import Mathlib

/-!
# FRAM persistence library: shallow embedding

The C sources under `src/` are embedded as Lean functions.

* Machine integers are natural numbers; every place where the C code can wrap
  (`uint32_t` additions and increments, casts to `uint16_t` / `uint64_t`)
  carries an explicit `%`.
* A byte is a natural number; a buffer is a `List Nat`; the media behind the
  mock HAL is a function from addresses to bytes.
* Stateful code passes its state explicitly: every operation returns its
  `esp_err_t` together with the new state of the objects it may touch.
* A C string is the list of its bytes before the terminating NUL.
* Pointers that the library only tests against `NULL` and that the model
  cannot make null (the object itself, the device, the partition manager) are
  not represented; optional out-pointers are `Option`s.
* A FreeRTOS mutex is one of `NULL` (never created), `free`, or `held` (owned
  by another task for longer than the timeout): taking a free mutex succeeds,
  and since every operation gives the mutex back before it returns, the handle
  is unchanged by it.
-/

namespace Fram

/-! ## Error codes and integer helpers -/

/-- The `esp_err_t` values the library uses. -/
inductive esp_err_t
  | ESP_OK
  | ESP_FAIL
  | ESP_ERR_NO_MEM
  | ESP_ERR_INVALID_ARG
  | ESP_ERR_INVALID_STATE
  | ESP_ERR_INVALID_SIZE
  | ESP_ERR_NOT_FOUND
  | ESP_ERR_TIMEOUT
  | ESP_ERR_INVALID_CRC
  deriving DecidableEq, Repr

open esp_err_t

/-- A FreeRTOS mutex handle as seen by a sequential caller. -/
inductive SemaphoreHandle_t
  | NULL
  | free
  | held
  deriving DecidableEq, Repr

/-- Number of values of a `uint32_t`. -/
def U32 : Nat := 4294967296

/-- Number of values of a `uint64_t`. -/
def U64 : Nat := 18446744073709551616

/-- Largest `uint16_t`. -/
def UINT16_MAX : Nat := 65535

/-- Little-endian encoding of `n` on `w` bytes (the in-memory image of a
packed unsigned field on the little-endian target). -/
def le_bytes : Nat → Nat → List Nat
  | 0, _ => []
  | w + 1, n => (n % 256) :: le_bytes w (n / 256)

/-- Little-endian value of a byte string. -/
def le_val : List Nat → Nat
  | [] => 0
  | b :: bs => b + 256 * le_val bs

/-- The bytes `data[off .. off+len)` of a buffer (`memcpy` out of an array). -/
def slice (data : List Nat) (off len : Nat) : List Nat :=
  (data.drop off).take len

/-- The values missing from the build configuration (`sdkconfig.h`), taken as
parameters. -/
structure Kconfig where
  FRAM_RING_MAX_PAYLOAD : Nat
  FRAM_VSLOT_MAX_PAYLOAD : Nat
  FRAM_KVS_MAX_VALUE : Nat
  FRAM_DEFAULT_ERROR_THRESHOLD : Nat
  FRAM_DEFAULT_MUTEX_TIMEOUT_MS : Nat

/-! ## CRC32 (`fram_crc.c`) -/

/-- One bit of the reflected CRC32 division by the polynomial `0xEDB88320`. -/
def crc32_bit (c : Nat) : Nat :=
  if c % 2 = 1 then (c / 2) ^^^ 0xEDB88320 else c / 2

/-- One byte of the reflected CRC32: xor the byte in, then eight bit steps. -/
def crc32_byte (c b : Nat) : Nat :=
  crc32_bit (crc32_bit (crc32_bit (crc32_bit (crc32_bit (crc32_bit (crc32_bit
    (crc32_bit (c ^^^ (b % 256)))))))))

/-- Modelled from the spec: the ROM routine `esp_rom_crc32_le` is not part of
the sources. Section 4.1 describes it as the standard reflected polynomial
`0xEDB88320` with initial value equal to `seed` and no final xor applied inside
the call, so that the returned value can be passed as seed to continue. -/
def esp_rom_crc32_le (seed : Nat) (data : List Nat) : Nat :=
  data.foldl crc32_byte (seed % U32)

/-- The function `fram_crc32_le` of `fram_crc.c`. -/
def fram_crc32_le (seed : Nat) (data : List Nat) : Nat :=
  esp_rom_crc32_le seed data

/-! ## Mock HAL (`fram_hal_mock.c`) -/

/-- The struct `fram_hal_mock_ctx_t`; `buffer` is the backing store. -/
structure fram_hal_mock_ctx_t where
  buffer : Nat → Nat
  size_bytes : Nat
  op_count : Nat
  fail_after : Nat
  fail_enabled : Bool
  inject_offset : Nat
  inject_len : Nat
  inject_enabled : Bool

/-- The struct `fram_hal`; its function pointers are those of the mock HAL. -/
structure fram_hal_t where
  size_bytes : Nat
  max_transfer : Nat
  ctx : fram_hal_mock_ctx_t

/-- The function `fram_mock_should_fail`. -/
def fram_mock_should_fail (ctx : fram_hal_mock_ctx_t) : Bool :=
  if !ctx.fail_enabled then false
  else if ctx.op_count ≥ ctx.fail_after then true
  else false

/-- The bytes `mem[addr .. addr+len)` of the media. -/
def mem_read (mem : Nat → Nat) (addr len : Nat) : List Nat :=
  (List.range len).map (fun i => mem (addr + i))

/-- The media after `memcpy(&mem[addr], data, data.length)`. -/
def mem_write (mem : Nat → Nat) (addr : Nat) (data : List Nat) : Nat → Nat :=
  fun a => if addr ≤ a ∧ a < addr + data.length then data.getD (a - addr) 0 else mem a

/-- The function `fram_hal_mock_read`: the result, the bytes copied to the
caller, and the HAL afterwards. -/
def fram_hal_mock_read (hal : fram_hal_t) (addr len : Nat) :
    esp_err_t × List Nat × fram_hal_t :=
  if len = 0 then (ESP_OK, [], hal)
  else if addr > hal.size_bytes ∨ len > hal.size_bytes ∨ addr > hal.size_bytes - len then
    (ESP_ERR_INVALID_SIZE, [], hal)
  else
    let ctx := { hal.ctx with op_count := (hal.ctx.op_count + 1) % U32 }
    let hal1 := { hal with ctx := ctx }
    if fram_mock_should_fail ctx then (ESP_FAIL, [], hal1)
    else
      let data := mem_read ctx.buffer addr len
      if ctx.inject_enabled then
        let start := addr
        let stop := (addr + len) % U32
        let inj_start := ctx.inject_offset
        let inj_end := (ctx.inject_offset + ctx.inject_len) % U32
        if stop > inj_start ∧ start < inj_end then
          let overlap_start := if start > inj_start then start else inj_start
          let overlap_end := if stop < inj_end then stop else inj_end
          let out := (List.range len).map (fun i =>
            if overlap_start ≤ start + i ∧ start + i < overlap_end
            then (ctx.buffer (addr + i)) ^^^ 0xFF else ctx.buffer (addr + i))
          (ESP_OK, out, hal1)
        else (ESP_OK, data, hal1)
      else (ESP_OK, data, hal1)

/-- The function `fram_hal_mock_write`; `len` is the length of `data`. -/
def fram_hal_mock_write (hal : fram_hal_t) (addr : Nat) (data : List Nat) :
    esp_err_t × fram_hal_t :=
  if data.length = 0 then (ESP_OK, hal)
  else if addr > hal.size_bytes ∨ data.length > hal.size_bytes
      ∨ addr > hal.size_bytes - data.length then
    (ESP_ERR_INVALID_SIZE, hal)
  else
    let ctx := { hal.ctx with op_count := (hal.ctx.op_count + 1) % U32 }
    if fram_mock_should_fail ctx then (ESP_FAIL, { hal with ctx := ctx })
    else (ESP_OK, { hal with ctx := { ctx with buffer := mem_write ctx.buffer addr data } })

/-- The function `fram_hal_mock_create` for a backing store `buffer` of
`buffer_len` bytes; no HAL is produced when the configuration is refused. -/
def fram_hal_mock_create (buffer : Nat → Nat) (buffer_len size_bytes : Nat) :
    esp_err_t × Option fram_hal_t :=
  if size_bytes = 0 ∨ size_bytes > buffer_len then (ESP_ERR_INVALID_SIZE, none)
  else
    (ESP_OK, some
      { size_bytes := size_bytes % U32
        max_transfer := size_bytes % U32
        ctx :=
          { buffer := buffer
            size_bytes := size_bytes
            op_count := 0
            fail_after := 0
            fail_enabled := false
            inject_offset := 0
            inject_len := 0
            inject_enabled := false } })

/-- The function `fram_hal_mock_fill`. -/
def fram_hal_mock_fill (hal : fram_hal_t) (value : Nat) : fram_hal_t :=
  { hal with ctx := { hal.ctx with
      buffer := fun a => if a < hal.ctx.size_bytes then value else hal.ctx.buffer a } }

/-- The function `fram_hal_mock_set_fail_after`. -/
def fram_hal_mock_set_fail_after (hal : fram_hal_t) (operations : Nat) : fram_hal_t :=
  { hal with ctx := { hal.ctx with fail_after := operations, fail_enabled := true } }

/-! ## Device layer (`fram_dev.c`) -/

/-- The struct `fram_dev_t`. -/
structure fram_dev_t where
  hal : fram_hal_t
  mutex : SemaphoreHandle_t
  read_count : Nat
  write_count : Nat
  error_count : Nat
  consecutive_errors : Nat
  healthy : Bool
  error_threshold : Nat
  mutex_timeout_ms : Nat

/-- Taking a mutex with a timeout, as every `*_lock` helper of the library
does: `ESP_ERR_INVALID_STATE` without a mutex, `ESP_ERR_TIMEOUT` when it
cannot be obtained, `ESP_OK` otherwise. -/
def mutex_take (m : SemaphoreHandle_t) : esp_err_t :=
  match m with
  | SemaphoreHandle_t.NULL => ESP_ERR_INVALID_STATE
  | SemaphoreHandle_t.held => ESP_ERR_TIMEOUT
  | SemaphoreHandle_t.free => ESP_OK

/-- The function `fram_dev_lock`. -/
def fram_dev_lock (dev : fram_dev_t) : esp_err_t :=
  mutex_take dev.mutex

/-- The function `fram_dev_record_error`. -/
def fram_dev_record_error (dev : fram_dev_t) : fram_dev_t :=
  let dev1 := { dev with
    error_count := (dev.error_count + 1) % U32,
    consecutive_errors := (dev.consecutive_errors + 1) % U32 }
  if dev1.consecutive_errors ≥ dev1.error_threshold then { dev1 with healthy := false }
  else dev1

/-- The function `fram_dev_record_success`. -/
def fram_dev_record_success (dev : fram_dev_t) : fram_dev_t :=
  { dev with consecutive_errors := 0 }

/-- The function `fram_dev_init` on a mock HAL (whose `init` and `probe`
succeed); `xSemaphoreCreateMutexStatic` returns a free mutex. -/
def fram_dev_init (K : Kconfig) (hal : fram_hal_t) (error_threshold mutex_timeout_ms : Nat) :
    esp_err_t × fram_dev_t :=
  let dev : fram_dev_t :=
    { hal := hal
      mutex := SemaphoreHandle_t.free
      read_count := 0
      write_count := 0
      error_count := 0
      consecutive_errors := 0
      healthy := true
      error_threshold :=
        if error_threshold ≠ 0 then error_threshold else K.FRAM_DEFAULT_ERROR_THRESHOLD
      mutex_timeout_ms :=
        if mutex_timeout_ms ≠ 0 then mutex_timeout_ms else K.FRAM_DEFAULT_MUTEX_TIMEOUT_MS }
  if dev.hal.size_bytes = 0 then (ESP_ERR_INVALID_STATE, dev) else (ESP_OK, dev)

/-- The function `fram_dev_deinit`. -/
def fram_dev_deinit (dev : fram_dev_t) : esp_err_t × fram_dev_t :=
  (ESP_OK, { dev with healthy := false })

/-- The chunk loop of `fram_dev_read`. Every iteration moves at least one byte
(`max_transfer` is non-zero where the loop is entered), so `fuel = remaining`
iterations are enough; the loop reports `ESP_FAIL` if the fuel runs out. -/
def fram_dev_read_loop : Nat → fram_dev_t → Nat → Nat → Nat → List Nat →
    esp_err_t × List Nat × fram_dev_t
  | 0, dev, _, remaining, _, out =>
      if remaining = 0 then (ESP_OK, out, dev) else (ESP_FAIL, out, dev)
  | fuel + 1, dev, addr, remaining, max_transfer, out =>
      if remaining = 0 then (ESP_OK, out, dev)
      else
        let chunk := if remaining > max_transfer then max_transfer else remaining
        let r := fram_hal_mock_read dev.hal addr chunk
        if r.1 ≠ ESP_OK then
          (r.1, out, fram_dev_record_error { dev with hal := r.2.2 })
        else
          let dev1 := fram_dev_record_success
            { dev with hal := r.2.2, read_count := (dev.read_count + 1) % U32 }
          fram_dev_read_loop fuel dev1 ((addr + chunk) % U32) (remaining - chunk)
            max_transfer (out ++ r.2.1)

/-- The function `fram_dev_read`: the result, the bytes copied to the caller
(those of the chunks read so far when a chunk fails), and the device. -/
def fram_dev_read (dev : fram_dev_t) (offset len : Nat) :
    esp_err_t × List Nat × fram_dev_t :=
  if len = 0 then (ESP_OK, [], dev)
  else if dev.hal.size_bytes = 0 ∨ offset > dev.hal.size_bytes ∨ len > dev.hal.size_bytes
      ∨ offset > dev.hal.size_bytes - len then
    (ESP_ERR_INVALID_SIZE, [], dev)
  else if fram_dev_lock dev ≠ ESP_OK then
    (fram_dev_lock dev, [], fram_dev_record_error dev)
  else
    let max_transfer :=
      if dev.hal.max_transfer ≠ 0 then dev.hal.max_transfer else dev.hal.size_bytes
    fram_dev_read_loop len dev offset len max_transfer []

/-- The chunk loop of `fram_dev_write`; `data` holds the bytes still to be
written (`remaining = data.length`). -/
def fram_dev_write_loop : Nat → fram_dev_t → Nat → List Nat → Nat →
    esp_err_t × fram_dev_t
  | 0, dev, _, data, _ =>
      if data.length = 0 then (ESP_OK, dev) else (ESP_FAIL, dev)
  | fuel + 1, dev, addr, data, max_transfer =>
      if data.length = 0 then (ESP_OK, dev)
      else
        let chunk := if data.length > max_transfer then max_transfer else data.length
        let r := fram_hal_mock_write dev.hal addr (data.take chunk)
        if r.1 ≠ ESP_OK then
          (r.1, fram_dev_record_error { dev with hal := r.2 })
        else
          let dev1 := fram_dev_record_success
            { dev with hal := r.2, write_count := (dev.write_count + 1) % U32 }
          fram_dev_write_loop fuel dev1 ((addr + chunk) % U32) (data.drop chunk) max_transfer

/-- The function `fram_dev_write`; `len` is the length of `data`. -/
def fram_dev_write (dev : fram_dev_t) (offset : Nat) (data : List Nat) :
    esp_err_t × fram_dev_t :=
  if data.length = 0 then (ESP_OK, dev)
  else if dev.hal.size_bytes = 0 ∨ offset > dev.hal.size_bytes
      ∨ data.length > dev.hal.size_bytes ∨ offset > dev.hal.size_bytes - data.length then
    (ESP_ERR_INVALID_SIZE, dev)
  else if fram_dev_lock dev ≠ ESP_OK then
    (fram_dev_lock dev, fram_dev_record_error dev)
  else
    let max_transfer :=
      if dev.hal.max_transfer ≠ 0 then dev.hal.max_transfer else dev.hal.size_bytes
    fram_dev_write_loop data.length dev offset data max_transfer

/-- The function `fram_dev_get_size`. -/
def fram_dev_get_size (dev : fram_dev_t) : Nat :=
  dev.hal.size_bytes

/-- The function `fram_dev_reset_stats`. -/
def fram_dev_reset_stats (dev : fram_dev_t) : fram_dev_t :=
  { dev with read_count := 0, write_count := 0, error_count := 0,
             consecutive_errors := 0, healthy := true }

/-! ## Partition manager (`fram_partition.c`) -/

/-- The constant `FRAM_PART_NAME_MAX`. -/
def FRAM_PART_NAME_MAX : Nat := 16

/-- The constant `FRAM_PART_MAX`. -/
def FRAM_PART_MAX : Nat := 16

/-- The flag `FRAM_PART_FLAG_READONLY`. -/
def FRAM_PART_FLAG_READONLY : Nat := 1

/-- The constant `FRAM_PM_ERASE_CHUNK`. -/
def FRAM_PM_ERASE_CHUNK : Nat := 64

/-- The struct `fram_partition_t`; `name` holds the bytes of the name field
before its first NUL. -/
structure fram_partition_t where
  name : List Nat
  offset : Nat
  size : Nat
  flags : Nat
  deriving DecidableEq, Repr

/-- The struct `fram_pm_t`. -/
structure fram_pm_t where
  dev : fram_dev_t
  partitions : List fram_partition_t
  partition_count : Nat
  initialized : Bool

/-- The function `fram_pm_ranges_overlap`. -/
def fram_pm_ranges_overlap (a_start a_end b_start b_end : Nat) : Bool :=
  decide (a_start < b_end) && decide (b_start < a_end)

/-- The first loop of `fram_pm_init`: validate and copy the entries from index
`i` on; `acc` holds the entries copied so far. -/
def fram_pm_init_copy (dev_size : Nat) : List fram_partition_t → List fram_partition_t →
    esp_err_t × List fram_partition_t
  | [], acc => (ESP_OK, acc)
  | src :: rest, acc =>
      if src.size = 0 then (ESP_ERR_INVALID_SIZE, acc)
      else
        let name_len := if src.name.length < FRAM_PART_NAME_MAX then src.name.length
          else FRAM_PART_NAME_MAX
        if name_len = 0 ∨ name_len ≥ FRAM_PART_NAME_MAX then (ESP_ERR_INVALID_ARG, acc)
        else if src.offset > dev_size ∨ src.size > dev_size ∨ src.offset > dev_size - src.size
        then (ESP_ERR_INVALID_SIZE, acc)
        else fram_pm_init_copy dev_size rest (acc ++ [src])

/-- The second loop of `fram_pm_init`: does some entry overlap a later one? -/
def fram_pm_init_overlap : List fram_partition_t → Bool
  | [] => false
  | a :: rest =>
      rest.any (fun b => fram_pm_ranges_overlap a.offset ((a.offset + a.size) % U32)
        b.offset ((b.offset + b.size) % U32))
      || fram_pm_init_overlap rest

/-- The function `fram_pm_init`; `pm` is the object as the caller passes it
(left untouched when `count` is refused), and `count` entries of `parts` are
used. -/
def fram_pm_init (pm : fram_pm_t) (dev : fram_dev_t) (parts : List fram_partition_t)
    (count : Nat) : esp_err_t × fram_pm_t :=
  if count = 0 ∨ count > FRAM_PART_MAX then (ESP_ERR_INVALID_SIZE, pm)
  else
    let pm0 : fram_pm_t :=
      { dev := dev, partitions := [], partition_count := 0, initialized := false }
    if fram_dev_get_size dev = 0 then (ESP_ERR_INVALID_STATE, pm0)
    else
      let r := fram_pm_init_copy (fram_dev_get_size dev) (parts.take count) []
      if r.1 ≠ ESP_OK then (r.1, { pm0 with partitions := r.2 })
      else if fram_pm_init_overlap r.2 then
        (ESP_ERR_INVALID_STATE, { pm0 with partitions := r.2 })
      else
        (ESP_OK, { pm0 with partitions := r.2, partition_count := count, initialized := true })

/-- The test `strncmp(a, b, n) == 0` on two C strings. -/
def strncmp_eq (a b : List Nat) (n : Nat) : Bool :=
  a.take n == b.take n

/-- The function `fram_pm_find`. -/
def fram_pm_find (pm : fram_pm_t) (name : List Nat) : Option fram_partition_t :=
  (pm.partitions.take pm.partition_count).find?
    (fun p => strncmp_eq p.name name FRAM_PART_NAME_MAX)

/-- The function `fram_pm_is_valid_range` on a non-`NULL` partition. -/
def fram_pm_is_valid_range (p : fram_partition_t) (offset len : Nat) : Bool :=
  if len = 0 then true
  else if offset > p.size ∨ len > p.size ∨ offset > p.size - len then false
  else true

/-- The function `fram_pm_read`; `part` is `none` for a `NULL` partition. -/
def fram_pm_read (pm : fram_pm_t) (part : Option fram_partition_t) (offset len : Nat) :
    esp_err_t × List Nat × fram_pm_t :=
  match part with
  | none => (ESP_ERR_INVALID_ARG, [], pm)
  | some p =>
    if !pm.initialized then (ESP_ERR_INVALID_STATE, [], pm)
    else if !fram_pm_is_valid_range p offset len then (ESP_ERR_INVALID_SIZE, [], pm)
    else
      let r := fram_dev_read pm.dev ((p.offset + offset) % U32) len
      (r.1, r.2.1, { pm with dev := r.2.2 })

/-- The function `fram_pm_write`; `len` is the length of `data`. -/
def fram_pm_write (pm : fram_pm_t) (part : Option fram_partition_t) (offset : Nat)
    (data : List Nat) : esp_err_t × fram_pm_t :=
  match part with
  | none => (ESP_ERR_INVALID_ARG, pm)
  | some p =>
    if !pm.initialized then (ESP_ERR_INVALID_STATE, pm)
    else if p.flags &&& FRAM_PART_FLAG_READONLY ≠ 0 then (ESP_ERR_INVALID_STATE, pm)
    else if !fram_pm_is_valid_range p offset data.length then (ESP_ERR_INVALID_SIZE, pm)
    else
      let r := fram_dev_write pm.dev ((p.offset + offset) % U32) data
      (r.1, { pm with dev := r.2 })

/-- The chunk loop of `fram_pm_erase`; each iteration erases at least one
byte, so `fuel = remaining` iterations are enough. -/
def fram_pm_erase_loop : Nat → fram_pm_t → fram_partition_t → Nat → Nat →
    esp_err_t × fram_pm_t
  | 0, pm, _, _, remaining =>
      if remaining = 0 then (ESP_OK, pm) else (ESP_FAIL, pm)
  | fuel + 1, pm, p, offset, remaining =>
      if remaining = 0 then (ESP_OK, pm)
      else
        let chunk := if remaining > FRAM_PM_ERASE_CHUNK then FRAM_PM_ERASE_CHUNK else remaining
        let r := fram_pm_write pm (some p) offset (List.replicate chunk 0xFF)
        if r.1 ≠ ESP_OK then (r.1, r.2)
        else fram_pm_erase_loop fuel r.2 p ((offset + chunk) % U32) (remaining - chunk)

/-- The function `fram_pm_erase`. -/
def fram_pm_erase (pm : fram_pm_t) (part : Option fram_partition_t) : esp_err_t × fram_pm_t :=
  match part with
  | none => (ESP_ERR_INVALID_ARG, pm)
  | some p =>
    if !pm.initialized then (ESP_ERR_INVALID_STATE, pm)
    else if p.flags &&& FRAM_PART_FLAG_READONLY ≠ 0 then (ESP_ERR_INVALID_STATE, pm)
    else fram_pm_erase_loop p.size pm p 0 p.size

/-! ## Predicates used by the theorems -/

/-- A working device of `size` bytes holding `mem`: its mutex can be taken and
the mock HAL neither fails nor corrupts reads. -/
structure DevOK (dev : fram_dev_t) (mem : Nat → Nat) (size : Nat) : Prop where
  mutex_free : dev.mutex = SemaphoreHandle_t.free
  no_fail : dev.hal.ctx.fail_enabled = false
  no_inject : dev.hal.ctx.inject_enabled = false
  size_eq : dev.hal.size_bytes = size
  size_lt : size < U32
  mem_eq : dev.hal.ctx.buffer = mem

/-- An initialised partition manager over a working device, seen through the
writable partition `p`, which lies inside the device and whose byte `i` (the
device byte `p.offset + i`) is `pmem i`. -/
structure PmOK (pm : fram_pm_t) (p : fram_partition_t) (pmem : Nat → Nat) : Prop where
  initialized : pm.initialized = true
  writable : p.flags &&& FRAM_PART_FLAG_READONLY = 0
  device : ∃ mem size, DevOK pm.dev mem size ∧ p.offset + p.size ≤ size ∧
    ∀ i, i < p.size → mem (p.offset + i) = pmem i

/-- The partition table of `pm1` is that of `pm`: the operations on partitions
only change the device of a partition manager. -/
def PmSame (pm pm1 : fram_pm_t) : Prop :=
  pm1.partitions = pm.partitions ∧ pm1.partition_count = pm.partition_count

/-! ## Superblock (`fram_superblock.h`, `fram_superblock.c`) -/

/-- The constant `FRAM_SUPERBLOCK_MAGIC` ("FRAM"). -/
def FRAM_SUPERBLOCK_MAGIC : Nat := 0x4D415246

/-- The constant `FRAM_SUPERBLOCK_VERSION`. -/
def FRAM_SUPERBLOCK_VERSION : Nat := 1

/-- The constant `FRAM_SUPERBLOCK_COMMIT`. -/
def FRAM_SUPERBLOCK_COMMIT : Nat := 0xA5

/-- The value `sizeof(fram_superblock_t)`: 16 bytes of scalar fields, 16
partition records of 28 bytes, then `crc32`, `commit` and `reserved[3]`. -/
def SUPERBLOCK_SIZE : Nat := 472

/-- The value `offsetof(fram_superblock_t, commit)`. -/
def SUPERBLOCK_COMMIT_OFFSET : Nat := 468

/-- The packed struct `fram_superblock_t`. The field `parts` is the 448-byte
memory image of `parts[FRAM_PART_MAX]` (the superblock code copies it and never
looks inside); `reserved` is the 3-byte array. -/
structure fram_superblock_t where
  magic : Nat
  version : Nat
  count : Nat
  seq : Nat
  size_bytes : Nat
  parts : List Nat
  crc32 : Nat
  commit : Nat
  reserved : List Nat
  deriving DecidableEq, Repr

/-- The first `offsetof(fram_superblock_t, crc32)` = 464 bytes of the struct. -/
def fram_superblock_t.head_bytes (sb : fram_superblock_t) : List Nat :=
  le_bytes 4 sb.magic ++ (le_bytes 2 sb.version ++ (le_bytes 2 sb.count ++
    (le_bytes 4 sb.seq ++ (le_bytes 4 sb.size_bytes ++ sb.parts))))

/-- The memory image of the struct (what `fram_dev_write(.., &temp, sizeof(temp))`
sends). -/
def fram_superblock_t.to_bytes (sb : fram_superblock_t) : List Nat :=
  sb.head_bytes ++ (le_bytes 4 sb.crc32 ++ (le_bytes 1 sb.commit ++ sb.reserved))

/-- The struct whose memory image is `b` (what `fram_dev_read(.., &a, sizeof(a))`
leaves in `a`). -/
def fram_superblock_of_bytes (b : List Nat) : fram_superblock_t :=
  { magic := le_val (slice b 0 4)
    version := le_val (slice b 4 2)
    count := le_val (slice b 6 2)
    seq := le_val (slice b 8 4)
    size_bytes := le_val (slice b 12 4)
    parts := slice b 16 448
    crc32 := le_val (slice b 464 4)
    commit := le_val (slice b 468 1)
    reserved := slice b 469 3 }

/-- The function `fram_superblock_offset`. -/
def fram_superblock_offset (base index : Nat) : Nat :=
  (base + (index * SUPERBLOCK_SIZE) % U32) % U32

/-- The function `fram_superblock_crc`. -/
def fram_superblock_crc (sb : fram_superblock_t) : Nat :=
  fram_crc32_le 0 sb.head_bytes

/-- The function `fram_superblock_valid`. -/
def fram_superblock_valid (sb : fram_superblock_t) (dev_size : Nat) : Bool :=
  if sb.magic ≠ FRAM_SUPERBLOCK_MAGIC ∨ sb.version ≠ FRAM_SUPERBLOCK_VERSION then false
  else if sb.commit ≠ FRAM_SUPERBLOCK_COMMIT then false
  else if sb.count > FRAM_PART_MAX then false
  else if sb.size_bytes ≠ dev_size then false
  else decide (fram_superblock_crc sb = sb.crc32)

/-- The function `fram_superblock_read`: the result, `*out` when it was
assigned, and the device. -/
def fram_superblock_read (dev : fram_dev_t) (base_offset : Nat) :
    esp_err_t × Option fram_superblock_t × fram_dev_t :=
  let ra := fram_dev_read dev base_offset SUPERBLOCK_SIZE
  let rb := fram_dev_read ra.2.2 ((base_offset + SUPERBLOCK_SIZE) % U32) SUPERBLOCK_SIZE
  let a := fram_superblock_of_bytes ra.2.1
  let b := fram_superblock_of_bytes rb.2.1
  let a_read_ok := decide (ra.1 = ESP_OK)
  let b_read_ok := decide (rb.1 = ESP_OK)
  if !a_read_ok && !b_read_ok then (ra.1, none, rb.2.2)
  else
    let dev_size := fram_dev_get_size rb.2.2
    let a_valid := a_read_ok && fram_superblock_valid a dev_size
    let b_valid := b_read_ok && fram_superblock_valid b dev_size
    if !a_valid && !b_valid then (ESP_ERR_NOT_FOUND, none, rb.2.2)
    else if a_valid && (!b_valid || decide (a.seq ≥ b.seq)) then (ESP_OK, some a, rb.2.2)
    else (ESP_OK, some b, rb.2.2)

/-- The target selection of `fram_superblock_write` (the `if` chain over
`a_valid` and `b_valid`): the pair `(target_index, next_seq)`. The caller's
`sb->seq`, the initial value of `next_seq`, is overwritten on every path. -/
def fram_superblock_write_select (a_valid b_valid : Bool) (a b : fram_superblock_t) :
    Nat × Nat :=
  if a_valid && b_valid then
    if a.seq ≤ b.seq then (0, (b.seq + 1) % U32) else (1, (a.seq + 1) % U32)
  else if a_valid then (1, (a.seq + 1) % U32)
  else if b_valid then (0, (b.seq + 1) % U32)
  else (0, 1)

/-- The record `temp` that `fram_superblock_write` builds from the caller's
buffer and `next_seq`. -/
def fram_superblock_write_temp (sb : fram_superblock_t) (next_seq : Nat) :
    fram_superblock_t :=
  let temp0 : fram_superblock_t :=
    { sb with seq := next_seq, commit := 0, reserved := [0, 0, 0] }
  { temp0 with crc32 := fram_superblock_crc temp0 }

/-- The function `fram_superblock_write`. -/
def fram_superblock_write (dev : fram_dev_t) (base_offset : Nat) (sb : fram_superblock_t) :
    esp_err_t × fram_dev_t :=
  let dev_size := fram_dev_get_size dev
  if sb.magic ≠ FRAM_SUPERBLOCK_MAGIC ∨ sb.version ≠ FRAM_SUPERBLOCK_VERSION then
    (ESP_ERR_INVALID_ARG, dev)
  else if sb.size_bytes ≠ dev_size ∨ sb.count > FRAM_PART_MAX then
    (ESP_ERR_INVALID_ARG, dev)
  else
    let ra := fram_dev_read dev base_offset SUPERBLOCK_SIZE
    let a := fram_superblock_of_bytes ra.2.1
    let a_valid := if ra.1 = ESP_OK then fram_superblock_valid a dev_size else false
    let rb := fram_dev_read ra.2.2 ((base_offset + SUPERBLOCK_SIZE) % U32) SUPERBLOCK_SIZE
    let b := fram_superblock_of_bytes rb.2.1
    let b_valid := if rb.1 = ESP_OK then fram_superblock_valid b dev_size else false
    let choice := fram_superblock_write_select a_valid b_valid a b
    let target_index := choice.1
    let next_seq := choice.2
    let temp := fram_superblock_write_temp sb next_seq
    let offset := fram_superblock_offset base_offset target_index
    let w := fram_dev_write rb.2.2 offset temp.to_bytes
    if w.1 ≠ ESP_OK then (w.1, w.2)
    else fram_dev_write w.2 ((offset + SUPERBLOCK_COMMIT_OFFSET) % U32) [FRAM_SUPERBLOCK_COMMIT]

/-- Direct store into the mock's backing buffer, as the tests do through
`fram_hal_mock_get_buffer` (`raw[addr] = value`). -/
def mock_poke (dev : fram_dev_t) (addr value : Nat) : fram_dev_t :=
  { dev with hal := { dev.hal with ctx := { dev.hal.ctx with
      buffer := mem_write dev.hal.ctx.buffer addr [value] } } }

/-- Validity of the superblock copy stored at `off`, in the words of the
specification (section 4.5), read off the media bytes: magic == "FRAM",
version == 1, commit == 0xA5, count ≤ 16, size_bytes == device capacity, and the
CRC over all bytes preceding `crc32` equals `crc32`. -/
def spec_copy_valid (mem : Nat → Nat) (off capacity : Nat) : Bool :=
  decide (le_val (mem_read mem off 4) = 0x4D415246) &&
  decide (le_val (mem_read mem (off + 4) 2) = 1) &&
  decide (mem (off + 468) = 0xA5) &&
  decide (le_val (mem_read mem (off + 6) 2) ≤ 16) &&
  decide (le_val (mem_read mem (off + 12) 4) = capacity) &&
  decide (fram_crc32_le 0 (mem_read mem off 464) = le_val (mem_read mem (off + 464) 4))

/-- The superblock copy stored on the media at `off`. -/
def superblock_at (mem : Nat → Nat) (off : Nat) : fram_superblock_t :=
  fram_superblock_of_bytes (mem_read mem off SUPERBLOCK_SIZE)

/-- The offset of the copy with the higher sequence number, copy A on a tie, as
the test `fram_superblock_ab_commit_recovery` computes `newest_offset`. -/
def superblock_newest_offset (mem : Nat → Nat) (base : Nat) : Nat :=
  if (superblock_at mem base).seq ≥ (superblock_at mem (base + SUPERBLOCK_SIZE)).seq
  then base else base + SUPERBLOCK_SIZE

/-- The higher of the two sequence numbers, as the test
`fram_superblock_ab_commit_recovery` computes `newest_seq`. -/
def superblock_newest_seq (mem : Nat → Nat) (base : Nat) : Nat :=
  if (superblock_at mem base).seq ≥ (superblock_at mem (base + SUPERBLOCK_SIZE)).seq
  then (superblock_at mem base).seq else (superblock_at mem (base + SUPERBLOCK_SIZE)).seq

/-- The device after two successive `fram_superblock_write` calls with the same
buffer, as in the test `fram_superblock_ab_commit_recovery`. -/
def superblock_write_twice (dev : fram_dev_t) (base : Nat) (sb : fram_superblock_t) :
    fram_dev_t :=
  (fram_superblock_write (fram_superblock_write dev base sb).2 base sb).2

/-- The device that `setUp` of `test_fram.c` builds over a backing buffer:
`fram_hal_mock_create` with `size_bytes = buffer_len = size`, then
`fram_dev_init` with `error_threshold = 3` and `mutex_timeout_ms = 1000`. -/
def mock_dev (buffer : Nat → Nat) (size : Nat) : fram_dev_t :=
  { hal :=
      { size_bytes := size % U32
        max_transfer := size % U32
        ctx :=
          { buffer := buffer
            size_bytes := size
            op_count := 0
            fail_after := 0
            fail_enabled := false
            inject_offset := 0
            inject_len := 0
            inject_enabled := false } }
    mutex := SemaphoreHandle_t.free
    read_count := 0
    write_count := 0
    error_count := 0
    consecutive_errors := 0
    healthy := true
    error_threshold := 3
    mutex_timeout_ms := 1000 }

/-- A valid superblock record with the largest sequence number, used as the
content of copy A in the examples: one partition entry, device size 944. -/
def example_old_superblock : fram_superblock_t :=
  { fram_superblock_write_temp
      { magic := FRAM_SUPERBLOCK_MAGIC, version := FRAM_SUPERBLOCK_VERSION, count := 1,
        seq := 0, size_bytes := 944, parts := List.replicate 448 0, crc32 := 0,
        commit := 0, reserved := [0, 0, 0] } 4294967295
    with commit := FRAM_SUPERBLOCK_COMMIT }

/-- A superblock a caller passes to `fram_superblock_write` on a device of 944
bytes: two partition entries. -/
def example_new_superblock : fram_superblock_t :=
  { magic := FRAM_SUPERBLOCK_MAGIC, version := FRAM_SUPERBLOCK_VERSION, count := 2,
    seq := 0, size_bytes := 944, parts := List.replicate 448 0, crc32 := 0,
    commit := 0, reserved := [0, 0, 0] }

/-- A device of 944 bytes (room for exactly the two copies) whose copy A holds
`example_old_superblock` and whose other bytes are erased. -/
def example_wrap_dev : fram_dev_t :=
  mock_dev (mem_write (fun _ => 0xFF) 0 example_old_superblock.to_bytes) 944

/-- A superblock whose fields fit their C types. -/
structure SbWF (sb : fram_superblock_t) : Prop where
  magic : sb.magic < 4294967296
  version : sb.version < 65536
  count : sb.count < 65536
  seq : sb.seq < 4294967296
  size_bytes : sb.size_bytes < 4294967296
  parts : sb.parts.length = 448
  crc32 : sb.crc32 < 4294967296
  commit : sb.commit < 256
  reserved : sb.reserved.length = 3

/-! ## Ring log (`fram_ring.h`, `fram_ring.c`) -/

/-- The constant `FRAM_RING_COMMIT`. -/
def FRAM_RING_COMMIT : Nat := 0xA5

/-- The value `sizeof(fram_ring_header_t)`. -/
def RING_HEADER_SIZE : Nat := 24

/-- The packed struct `fram_ring_header_t`. -/
structure fram_ring_header_t where
  magic : Nat
  seq : Nat
  ts_us : Nat
  len : Nat
  reserved : Nat
  crc32 : Nat
  deriving DecidableEq, Repr

/-- The first `offsetof(fram_ring_header_t, crc32)` = 20 bytes of the header. -/
def fram_ring_header_t.head_bytes (h : fram_ring_header_t) : List Nat :=
  le_bytes 4 h.magic ++ (le_bytes 4 h.seq ++ (le_bytes 8 h.ts_us ++
    (le_bytes 2 h.len ++ le_bytes 2 h.reserved)))

/-- The memory image of the header. -/
def fram_ring_header_t.to_bytes (h : fram_ring_header_t) : List Nat :=
  h.head_bytes ++ le_bytes 4 h.crc32

/-- The header whose memory image is `b` (`memcpy(hdr, buf, sizeof(*hdr))`). -/
def fram_ring_header_of_bytes (b : List Nat) : fram_ring_header_t :=
  { magic := le_val (slice b 0 4)
    seq := le_val (slice b 4 4)
    ts_us := le_val (slice b 8 8)
    len := le_val (slice b 16 2)
    reserved := le_val (slice b 18 2)
    crc32 := le_val (slice b 20 4) }

/-- The struct `fram_ring_t`; `part` is `none` for a `NULL` partition. -/
structure fram_ring_t where
  part : Option fram_partition_t
  entry_size : Nat
  max_payload : Nat
  capacity : Nat
  magic : Nat
  head_slot : Nat
  tail_slot : Nat
  head_seq : Nat
  count : Nat
  mutex : SemaphoreHandle_t
  ready : Bool

/-- The struct `fram_ring_config_t` (the partition manager is passed
separately). -/
structure fram_ring_config_t where
  partition_name : List Nat
  max_payload : Nat
  magic : Nat

/-- The function `fram_ring_slot_offset`. -/
def fram_ring_slot_offset (ring : fram_ring_t) (slot : Nat) : Nat :=
  (slot * ring.entry_size) % U32

/-- The offset of the commit byte of a slot, as `fram_ring_read_commit` and
`fram_ring_write_commit` compute it. -/
def fram_ring_commit_offset (ring : fram_ring_t) (slot : Nat) : Nat :=
  (fram_ring_slot_offset ring slot + RING_HEADER_SIZE + ring.max_payload) % U32

/-- The function `fram_ring_read_commit`: the result, the byte read (the
caller's initial 0 when nothing was read) and the partition manager. -/
def fram_ring_read_commit (ring : fram_ring_t) (pm : fram_pm_t) (slot : Nat) :
    esp_err_t × Nat × fram_pm_t :=
  let r := fram_pm_read pm ring.part (fram_ring_commit_offset ring slot) 1
  (r.1, r.2.1.headD 0, r.2.2)

/-- The function `fram_ring_write_commit`. -/
def fram_ring_write_commit (ring : fram_ring_t) (pm : fram_pm_t) (slot commit : Nat) :
    esp_err_t × fram_pm_t :=
  fram_pm_write pm ring.part (fram_ring_commit_offset ring slot) [commit]

/-- The function `fram_ring_read_header`. -/
def fram_ring_read_header (ring : fram_ring_t) (pm : fram_pm_t) (slot : Nat) :
    esp_err_t × fram_ring_header_t × fram_pm_t :=
  let r := fram_pm_read pm ring.part (fram_ring_slot_offset ring slot) RING_HEADER_SIZE
  (r.1, fram_ring_header_of_bytes r.2.1, r.2.2)

/-- The function `fram_ring_validate_slot`: the result, `*hdr_out` when it was
assigned, and the partition manager. -/
def fram_ring_validate_slot (ring : fram_ring_t) (pm : fram_pm_t) (slot : Nat) :
    esp_err_t × Option fram_ring_header_t × fram_pm_t :=
  let rc := fram_ring_read_commit ring pm slot
  if rc.1 ≠ ESP_OK ∨ rc.2.1 ≠ FRAM_RING_COMMIT then (ESP_ERR_NOT_FOUND, none, rc.2.2)
  else
    let rh := fram_ring_read_header ring rc.2.2 slot
    if rh.1 ≠ ESP_OK then (rh.1, none, rh.2.2)
    else
      let hdr := rh.2.1
      if hdr.magic ≠ ring.magic then (ESP_ERR_NOT_FOUND, none, rh.2.2)
      else if hdr.len > ring.max_payload then (ESP_ERR_INVALID_SIZE, none, rh.2.2)
      else
        let rp :=
          if hdr.len > 0 then
            fram_pm_read rh.2.2 ring.part
              ((fram_ring_slot_offset ring slot + RING_HEADER_SIZE) % U32) hdr.len
          else (ESP_OK, [], rh.2.2)
        if rp.1 ≠ ESP_OK then (rp.1, none, rp.2.2)
        else
          let crc0 := fram_crc32_le 0 hdr.head_bytes
          let crc := if hdr.len > 0 then fram_crc32_le crc0 rp.2.1 else crc0
          if crc ≠ hdr.crc32 then (ESP_ERR_INVALID_CRC, none, rp.2.2)
          else (ESP_OK, some hdr, rp.2.2)

/-- The function `fram_ring_lock`. -/
def fram_ring_lock (ring : fram_ring_t) : esp_err_t :=
  mutex_take ring.mutex

/-- The recovery state of the first loop of `fram_ring_init`. -/
structure ring_scan_t where
  highest_seq : Nat
  highest_slot : Nat
  found : Bool
  deriving DecidableEq, Repr

/-- The first recovery loop of `fram_ring_init`
(`for (slot = 0; slot < capacity; slot++)`), run over the given slots. -/
def fram_ring_init_scan (ring : fram_ring_t) :
    List Nat → ring_scan_t → fram_pm_t → ring_scan_t × fram_pm_t
  | [], st, pm => (st, pm)
  | slot :: rest, st, pm =>
      let r := fram_ring_validate_slot ring pm slot
      match r.1, r.2.1 with
      | ESP_OK, some hdr =>
          if !st.found || decide (hdr.seq > st.highest_seq) then
            fram_ring_init_scan ring rest
              { highest_seq := hdr.seq, highest_slot := slot, found := true } r.2.2
          else fram_ring_init_scan ring rest st r.2.2
      | _, _ => fram_ring_init_scan ring rest st r.2.2

/-- The second recovery loop of `fram_ring_init` (`while (run_len <
capacity)`): the final `run_len`. Every iteration either stops or increments
`run_len`, so `fuel = capacity` iterations are enough. -/
def fram_ring_init_walk (ring : fram_ring_t) :
    Nat → fram_pm_t → Nat → Nat → Nat → Nat × fram_pm_t
  | 0, pm, run_len, _, _ => (run_len, pm)
  | fuel + 1, pm, run_len, expected_seq, slot =>
      if run_len < ring.capacity then
        let r := fram_ring_validate_slot ring pm slot
        match r.1, r.2.1 with
        | ESP_OK, some hdr =>
            if hdr.seq ≠ expected_seq then (run_len, r.2.2)
            else
              let run_len1 := (run_len + 1) % U32
              if run_len1 ≥ ring.capacity then (run_len1, r.2.2)
              else
                fram_ring_init_walk ring fuel r.2.2 run_len1
                  ((expected_seq + U32 - 1) % U32)
                  ((((slot + ring.capacity) % U32 + U32 - 1) % U32) % ring.capacity)
        | _, _ => (run_len, r.2.2)
      else (run_len, pm)

/-- The function `fram_ring_init`; `ring` is the object as the caller passes
it (left untouched when `max_payload` is refused). -/
def fram_ring_init (K : Kconfig) (ring : fram_ring_t) (pm : fram_pm_t)
    (cfg : fram_ring_config_t) : esp_err_t × fram_ring_t × fram_pm_t :=
  if cfg.max_payload = 0 ∨ cfg.max_payload > K.FRAM_RING_MAX_PAYLOAD then
    (ESP_ERR_INVALID_SIZE, ring, pm)
  else
    let ring0 : fram_ring_t :=
      { part := fram_pm_find pm cfg.partition_name
        entry_size := 0, max_payload := 0, capacity := 0, magic := 0
        head_slot := 0, tail_slot := 0, head_seq := 0, count := 0
        mutex := SemaphoreHandle_t.NULL, ready := false }
    match ring0.part with
    | none => (ESP_ERR_NOT_FOUND, ring0, pm)
    | some p =>
      let entry_size := (RING_HEADER_SIZE + cfg.max_payload + 1) % U32
      let ring1 : fram_ring_t :=
        { ring0 with
          max_payload := cfg.max_payload
          entry_size := entry_size
          capacity := p.size / entry_size
          magic := cfg.magic }
      if ring1.capacity = 0 then (ESP_ERR_INVALID_SIZE, ring1, pm)
      else
        let ring2 : fram_ring_t := { ring1 with mutex := SemaphoreHandle_t.free }
        let s := fram_ring_init_scan ring2 (List.range ring2.capacity)
          { highest_seq := 0, highest_slot := 0, found := false } pm
        if !s.1.found then
          (ESP_OK, { ring2 with head_slot := 0, tail_slot := 0, head_seq := 0, count := 0,
                                ready := true }, s.2)
        else
          let w := fram_ring_init_walk ring2 ring2.capacity s.2 0 s.1.highest_seq
            s.1.highest_slot
          let head_slot := ((s.1.highest_slot + 1) % U32) % ring2.capacity
          (ESP_OK,
            { ring2 with
              count := w.1
              head_slot := head_slot
              head_seq := (s.1.highest_seq + 1) % U32
              tail_slot := (((head_slot + ring2.capacity) % U32 + U32 - w.1) % U32)
                % ring2.capacity
              ready := true }, w.2)

/-- The function `fram_ring_append`; `len` is the length of `payload` and
`now` is the value `esp_timer_get_time()` returns. -/
def fram_ring_append (ring : fram_ring_t) (pm : fram_pm_t) (payload : List Nat) (now : Nat) :
    esp_err_t × fram_ring_t × fram_pm_t :=
  if !ring.ready then (ESP_ERR_INVALID_STATE, ring, pm)
  else if payload.length > ring.max_payload ∨ payload.length > UINT16_MAX then
    (ESP_ERR_INVALID_SIZE, ring, pm)
  else if fram_ring_lock ring ≠ ESP_OK then (fram_ring_lock ring, ring, pm)
  else
    let slot := ring.head_slot
    let w0 := fram_ring_write_commit ring pm slot 0x00
    if w0.1 ≠ ESP_OK then (w0.1, ring, w0.2)
    else
      let hdr0 : fram_ring_header_t :=
        { magic := ring.magic
          seq := ring.head_seq
          ts_us := now % U64
          len := payload.length % 65536
          reserved := 0
          crc32 := 0 }
      let crc0 := fram_crc32_le 0 hdr0.head_bytes
      let crc := if payload.length > 0 then fram_crc32_le crc0 payload else crc0
      let hdr : fram_ring_header_t := { hdr0 with crc32 := crc }
      let w1 := fram_pm_write w0.2 ring.part (fram_ring_slot_offset ring slot) hdr.to_bytes
      let w2 :=
        if w1.1 = ESP_OK ∧ payload.length > 0 then
          fram_pm_write w1.2 ring.part
            ((fram_ring_slot_offset ring slot + RING_HEADER_SIZE) % U32) payload
        else w1
      let w3 := if w2.1 = ESP_OK then fram_ring_write_commit ring w2.2 slot FRAM_RING_COMMIT
        else w2
      if w3.1 ≠ ESP_OK then (w3.1, ring, w3.2)
      else
        let ring1 : fram_ring_t :=
          { ring with
            head_seq := (ring.head_seq + 1) % U32
            head_slot := ((ring.head_slot + 1) % U32) % ring.capacity }
        let ring2 : fram_ring_t :=
          if ring1.count < ring1.capacity then { ring1 with count := (ring1.count + 1) % U32 }
          else { ring1 with tail_slot := ((ring1.tail_slot + 1) % U32) % ring1.capacity }
        (ESP_OK, ring2, w3.2)

/-- What a peek returns besides its result: the caller's buffer, `*len`,
`*seq` and `*ts_us` after the call (`none` for a `NULL` pointer). -/
structure ring_peek_t where
  payload : Option (List Nat)
  len : Option Nat
  seq : Option Nat
  ts_us : Option Nat
  deriving DecidableEq, Repr

/-- The function `fram_ring_read_slot_payload`; `out` holds the caller's
buffer and the values behind `len`, `seq` and `ts_us` on entry. -/
def fram_ring_read_slot_payload (ring : fram_ring_t) (pm : fram_pm_t) (slot : Nat)
    (out : ring_peek_t) : esp_err_t × ring_peek_t × fram_pm_t :=
  let v := fram_ring_validate_slot ring pm slot
  match v.1, v.2.1 with
  | ESP_OK, some hdr =>
      let finish (o : ring_peek_t) (pm1 : fram_pm_t) : esp_err_t × ring_peek_t × fram_pm_t :=
        (ESP_OK,
          { o with
            seq := if o.seq.isSome then some hdr.seq else none
            ts_us := if o.ts_us.isSome then some hdr.ts_us else none }, pm1)
      match out.len with
      | none => finish out v.2.2
      | some cap =>
          match out.payload with
          | none => finish { out with len := some hdr.len } v.2.2
          | some buf =>
              if cap < hdr.len then
                (ESP_ERR_INVALID_SIZE, { out with len := some hdr.len }, v.2.2)
              else if hdr.len > 0 then
                let r := fram_pm_read v.2.2 ring.part
                  ((fram_ring_slot_offset ring slot + RING_HEADER_SIZE) % U32) hdr.len
                if r.1 ≠ ESP_OK then
                  (r.1, { out with payload := some (r.2.1 ++ buf.drop r.2.1.length) }, r.2.2)
                else
                  finish { out with payload := some (r.2.1 ++ buf.drop hdr.len),
                                    len := some hdr.len } r.2.2
              else finish { out with len := some hdr.len } v.2.2
  | ESP_OK, none => (ESP_FAIL, out, v.2.2)
  | err, _ => (err, out, v.2.2)

/-- The function `fram_ring_peek_oldest`. -/
def fram_ring_peek_oldest (ring : fram_ring_t) (pm : fram_pm_t) (out : ring_peek_t) :
    esp_err_t × ring_peek_t × fram_pm_t :=
  if out.len.isNone then (ESP_ERR_INVALID_ARG, out, pm)
  else if !ring.ready ∨ ring.count = 0 then (ESP_ERR_NOT_FOUND, out, pm)
  else if fram_ring_lock ring ≠ ESP_OK then (fram_ring_lock ring, out, pm)
  else fram_ring_read_slot_payload ring pm ring.tail_slot out

/-- The function `fram_ring_peek_newest`. -/
def fram_ring_peek_newest (ring : fram_ring_t) (pm : fram_pm_t) (out : ring_peek_t) :
    esp_err_t × ring_peek_t × fram_pm_t :=
  if out.len.isNone then (ESP_ERR_INVALID_ARG, out, pm)
  else if !ring.ready ∨ ring.count = 0 then (ESP_ERR_NOT_FOUND, out, pm)
  else if fram_ring_lock ring ≠ ESP_OK then (fram_ring_lock ring, out, pm)
  else
    let newest_slot :=
      (((ring.head_slot + ring.capacity) % U32 + U32 - 1) % U32) % ring.capacity
    fram_ring_read_slot_payload ring pm newest_slot out

/-- The function `fram_ring_peek_oldest_len`. -/
def fram_ring_peek_oldest_len (ring : fram_ring_t) (pm : fram_pm_t) (len : Option Nat) :
    esp_err_t × ring_peek_t × fram_pm_t :=
  if len.isNone then
    (ESP_ERR_INVALID_ARG, { payload := none, len := len, seq := none, ts_us := none }, pm)
  else fram_ring_peek_oldest ring pm { payload := none, len := len, seq := none, ts_us := none }

/-- The function `fram_ring_peek_newest_len`. -/
def fram_ring_peek_newest_len (ring : fram_ring_t) (pm : fram_pm_t) (len : Option Nat) :
    esp_err_t × ring_peek_t × fram_pm_t :=
  if len.isNone then
    (ESP_ERR_INVALID_ARG, { payload := none, len := len, seq := none, ts_us := none }, pm)
  else fram_ring_peek_newest ring pm { payload := none, len := len, seq := none, ts_us := none }

/-- The function `fram_ring_clear`. -/
def fram_ring_clear (ring : fram_ring_t) (pm : fram_pm_t) : esp_err_t × fram_ring_t × fram_pm_t :=
  if !ring.ready then (ESP_ERR_INVALID_STATE, ring, pm)
  else if fram_ring_lock ring ≠ ESP_OK then (fram_ring_lock ring, ring, pm)
  else
    let r := fram_pm_erase pm ring.part
    if r.1 = ESP_OK then
      (ESP_OK, { ring with head_slot := 0, tail_slot := 0, head_seq := 0, count := 0 }, r.2)
    else (r.1, ring, r.2)

/-- The function `fram_ring_count`. -/
def fram_ring_count (ring : fram_ring_t) : Nat :=
  ring.count

/-- The function `fram_ring_capacity`. -/
def fram_ring_capacity (ring : fram_ring_t) : Nat :=
  ring.capacity

/-- The function `fram_ring_is_full`. -/
def fram_ring_is_full (ring : fram_ring_t) : Bool :=
  decide (ring.count = ring.capacity)

/-- The function `fram_ring_is_empty`. -/
def fram_ring_is_empty (ring : fram_ring_t) : Bool :=
  decide (ring.count = 0)

/-- A run of `fram_ring_append` calls, stopping at the first one that does not
return `ESP_OK`; each entry is a payload with the timer value of its call. -/
def fram_ring_append_all : fram_ring_t → fram_pm_t → List (List Nat × Nat) →
    esp_err_t × fram_ring_t × fram_pm_t
  | ring, pm, [] => (ESP_OK, ring, pm)
  | ring, pm, e :: rest =>
      let r := fram_ring_append ring pm e.1 e.2
      if r.1 ≠ ESP_OK then r else fram_ring_append_all r.2.1 r.2.2 rest

/-- The header `fram_ring_append` writes for a payload, a timer value and a
sequence number. -/
def ring_header_for (magic seq now : Nat) (payload : List Nat) : fram_ring_header_t :=
  { magic := magic
    seq := seq
    ts_us := now % U64
    len := payload.length
    reserved := 0
    crc32 := fram_crc32_le 0
      (le_bytes 4 magic ++ (le_bytes 4 seq ++ (le_bytes 8 (now % U64) ++
        (le_bytes 2 payload.length ++ le_bytes 2 0))) ++ payload) }

/-- A ring as `fram_ring_init` leaves it on partition `p`: the geometry fields
are consistent, the slots fit in the partition, the mutex exists and the ring
is ready. -/
structure RingGeom (ring : fram_ring_t) (p : fram_partition_t) : Prop where
  part : ring.part = some p
  entry_size : ring.entry_size = RING_HEADER_SIZE + ring.max_payload + 1
  capacity_pos : 0 < ring.capacity
  fits : ring.capacity * ring.entry_size ≤ p.size
  magic : ring.magic < U32
  mutex : ring.mutex = SemaphoreHandle_t.free
  ready : ring.ready = true

/-- Slot `slot` of the partition holds the committed record `(hdr, payload)`. -/
structure SlotRec (pmem : Nat → Nat) (ring : fram_ring_t) (slot : Nat)
    (hdr : fram_ring_header_t) (payload : List Nat) : Prop where
  image : mem_read pmem (slot * ring.entry_size) (RING_HEADER_SIZE + payload.length)
    = hdr.to_bytes ++ payload
  commit : pmem (slot * ring.entry_size + RING_HEADER_SIZE + ring.max_payload) = FRAM_RING_COMMIT

/-- The partition content after every slot-relative change outside slot
`slot` is ignored: the two contents agree on the bytes of the slot. -/
def slot_agree (pmem1 pmem2 : Nat → Nat) (ring : fram_ring_t) (slot : Nat) : Prop :=
  ∀ i, i < ring.entry_size → pmem1 (slot * ring.entry_size + i) = pmem2 (slot * ring.entry_size + i)

/-- The ring and its partition after the records `es` (payload and timer
value of each append, oldest first) have been appended to an empty log on an
erased partition: the last `capacity` records are stored in their slots and
the slots never written are not committed. -/
structure RingAfter (ring : fram_ring_t) (pmem : Nat → Nat)
    (es : List (List Nat × Nat)) : Prop where
  head_seq : ring.head_seq = es.length % U32
  head_slot : ring.head_slot = es.length % ring.capacity
  count : ring.count = min es.length ring.capacity
  tail_slot : ring.tail_slot = if es.length ≤ ring.capacity then 0 else es.length % ring.capacity
  bounded : ∀ i, i < es.length →
    (es.getD i ([], 0)).1.length ≤ ring.max_payload ∧ (es.getD i ([], 0)).1.length ≤ UINT16_MAX
  window : ∀ i, i < es.length → es.length ≤ i + ring.capacity →
    SlotRec pmem ring (i % ring.capacity)
      (ring_header_for ring.magic (i % U32) (es.getD i ([], 0)).2 (es.getD i ([], 0)).1)
      (es.getD i ([], 0)).1
  fresh : ∀ j, es.length ≤ j → j < ring.capacity →
    pmem (j * ring.entry_size + RING_HEADER_SIZE + ring.max_payload) ≠ FRAM_RING_COMMIT

/-- The ring object `fram_ring_init` builds on partition `p` when no slot
holds a valid record: the geometry of the configuration and an empty log. -/
def ring_empty (p : fram_partition_t) (cfg : fram_ring_config_t) : fram_ring_t :=
  { part := some p
    entry_size := (RING_HEADER_SIZE + cfg.max_payload + 1) % U32
    max_payload := cfg.max_payload
    capacity := p.size / ((RING_HEADER_SIZE + cfg.max_payload + 1) % U32)
    magic := cfg.magic
    head_slot := 0, tail_slot := 0, head_seq := 0, count := 0
    mutex := SemaphoreHandle_t.free
    ready := true }

/-- A view of the slots of a partition: `V slot` is the sequence number of the
valid record stored in the slot, and `none` for a slot whose commit byte is
not set. -/
def RingView (ring : fram_ring_t) (pmem : Nat → Nat) (V : Nat → Option Nat) : Prop :=
  ∀ slot, slot < ring.capacity →
    (∀ q, V slot = some q → q < U32 ∧ ∃ now payload,
      payload.length ≤ ring.max_payload ∧ payload.length ≤ UINT16_MAX ∧
      SlotRec pmem ring slot (ring_header_for ring.magic q now payload) payload) ∧
    (V slot = none →
      pmem (slot * ring.entry_size + RING_HEADER_SIZE + ring.max_payload) ≠ FRAM_RING_COMMIT)

/-- The first recovery loop of `fram_ring_init` over a view of the slots. -/
def ring_scan_view (V : Nat → Option Nat) : List Nat → ring_scan_t → ring_scan_t
  | [], st => st
  | slot :: rest, st =>
      match V slot with
      | some q =>
          if !st.found || decide (q > st.highest_seq) then
            ring_scan_view V rest { highest_seq := q, highest_slot := slot, found := true }
          else ring_scan_view V rest st
      | none => ring_scan_view V rest st

/-- The second recovery loop of `fram_ring_init` over a view of the slots. -/
def ring_walk_view (V : Nat → Option Nat) (capacity : Nat) : Nat → Nat → Nat → Nat → Nat
  | 0, run_len, _, _ => run_len
  | fuel + 1, run_len, expected_seq, slot =>
      if run_len < capacity then
        match V slot with
        | some q =>
            if q ≠ expected_seq then run_len
            else
              let run_len1 := (run_len + 1) % U32
              if run_len1 ≥ capacity then run_len1
              else
                ring_walk_view V capacity fuel run_len1 ((expected_seq + U32 - 1) % U32)
                  ((((slot + capacity) % U32 + U32 - 1) % U32) % capacity)
        | none => run_len
      else run_len

/-- The ring object `fram_ring_init` computes on partition `p` from a view of
the slots. -/
def ring_recovered (p : fram_partition_t) (cfg : fram_ring_config_t)
    (V : Nat → Option Nat) : fram_ring_t :=
  let r := ring_empty p cfg
  let s := ring_scan_view V (List.range r.capacity)
    { highest_seq := 0, highest_slot := 0, found := false }
  if !s.found then r
  else
    let w := ring_walk_view V r.capacity r.capacity 0 s.highest_seq s.highest_slot
    let head_slot := ((s.highest_slot + 1) % U32) % r.capacity
    { r with
      count := w
      head_slot := head_slot
      head_seq := (s.highest_seq + 1) % U32
      tail_slot := (((head_slot + r.capacity) % U32 + U32 - w) % U32) % r.capacity }

/-- The step of `fram_ring_recovery_commit_missing` (`test_fram.c`) that zeroes
the commit byte of the newest slot through the mock's backing buffer:
`last_slot = (ring.head_slot + ring.capacity - 1) % ring.capacity`, then
`raw[part.offset + last_slot * entry_size + sizeof(header) + max_payload] = 0`. -/
def ring_tear_newest (ring : fram_ring_t) (pm : fram_pm_t) (p : fram_partition_t) : fram_pm_t :=
  let last_slot := ((ring.head_slot + ring.capacity - 1) % U32) % ring.capacity
  let commit_offset :=
    (p.offset + last_slot * ring.entry_size + RING_HEADER_SIZE + ring.max_payload) % U32
  { pm with dev := mock_poke pm.dev commit_offset 0x00 }

/-- The view of the slots after `n` appends to an empty ring of `c` slots,
once the commit byte of the newest record (index `n - 1`) is zeroed: slot `s`
holds the newest record stored in it, of index `n - 1 - (n - 1 - s) % c`. -/
def ring_torn_view (n c : Nat) (s : Nat) : Option Nat :=
  if n ≤ s then none
  else if n - 1 - (n - 1 - s) % c = n - 1 then none
  else some ((n - 1 - (n - 1 - s) % c) % U32)

/-- The valid records of a view are the records of indices `lo ≤ i < hi`, each
in slot `i % c` with sequence number `i % 2^32`. -/
def ViewWindow (V : Nat → Option Nat) (c lo hi : Nat) : Prop :=
  ∀ s, s < c → ∀ q, V s = some q ↔ ∃ i, lo ≤ i ∧ i < hi ∧ i % c = s ∧ q = i % U32

/-! ### The configuration of `test_fram.c` -/

/-- Build configuration used in the examples. -/
def example_K : Kconfig :=
  { FRAM_RING_MAX_PAYLOAD := 256
    FRAM_VSLOT_MAX_PAYLOAD := 256
    FRAM_KVS_MAX_VALUE := 256
    FRAM_DEFAULT_ERROR_THRESHOLD := 3
    FRAM_DEFAULT_MUTEX_TIMEOUT_MS := 1000 }

/-- The partition `"ring"` of `setup_partitions`: offset
`fram_superblock_storage_size() = 944`, size `0x1000`. -/
def example_ring_part : fram_partition_t :=
  { name := [0x72, 0x69, 0x6E, 0x67], offset := 944, size := 0x1000, flags := 0 }

/-- The partition `"vslot"` of `setup_partitions`. -/
def example_vslot_part : fram_partition_t :=
  { name := [0x76, 0x73, 0x6C, 0x6F, 0x74], offset := 944 + 0x1000, size := 0x0800, flags := 0 }

/-- The partition `"kvs"` of `setup_partitions`. -/
def example_kvs_part : fram_partition_t :=
  { name := [0x6B, 0x76, 0x73], offset := 944 + 0x1800, size := 0x1000, flags := 0 }

/-- The partition manager `setUp` builds: `fram_pm_init` over the three
partitions on the erased 32 KiB mock device. -/
def example_pm : fram_pm_t :=
  { dev := mock_dev (fun _ => 0xFF) 32768
    partitions := [example_ring_part, example_vslot_part, example_kvs_part]
    partition_count := 3
    initialized := true }

/-- The ring configuration of `fram_ring_recovery_commit_missing`. -/
def example_ring_cfg : fram_ring_config_t :=
  { partition_name := [0x72, 0x69, 0x6E, 0x67], max_payload := 16, magic := 0x52494E47 }

/-- A zeroed `fram_ring_t` object. -/
def example_ring0 : fram_ring_t :=
  { part := none, entry_size := 0, max_payload := 0, capacity := 0, magic := 0
    head_slot := 0, tail_slot := 0, head_seq := 0, count := 0
    mutex := SemaphoreHandle_t.NULL, ready := false }

/-- The three appends of `fram_ring_recovery_commit_missing`: the values
`0xA5A5A5A5`, `0xA5A5A5A6`, `0xA5A5A5A7` as little-endian words, with timer
values 10, 20, 30. -/
def example_ring_entries : List (List Nat × Nat) :=
  [([0xA5, 0xA5, 0xA5, 0xA5], 10), ([0xA6, 0xA5, 0xA5, 0xA5], 20), ([0xA7, 0xA5, 0xA5, 0xA5], 30)]

/-- The ring and the partition manager after `fram_ring_init` on the erased
example partition and the appends `entries`. -/
def example_ring_run (entries : List (List Nat × Nat)) : esp_err_t × fram_ring_t × fram_pm_t :=
  fram_ring_append_all (fram_ring_init example_K example_ring0 example_pm example_ring_cfg).2.1
    (fram_ring_init example_K example_ring0 example_pm example_ring_cfg).2.2 entries

/-- One hundred appends on the example ring (capacity 99), each payload the
byte of its index and each timer value the index. -/
def example_ring_overflow : List (List Nat × Nat) :=
  (List.range 100).map (fun i => ([i], i))

/-- A run of `2^32 + 2` appends of a one-byte payload: the sequence numbers
of the last records stored wrap around (`2^32 - 1`, `0`, `1`). -/
def example_ring_wrap : List (List Nat × Nat) :=
  List.replicate 4294967298 ([0xA5], 0)

/-! ## Versioned slots (`fram_vslot.h`, `fram_vslot.c`) -/

/-- The constant `FRAM_VSLOT_COMMIT`. -/
def FRAM_VSLOT_COMMIT : Nat := 0xA5

/-- The value `sizeof(fram_vslot_header_t)`. -/
def VSLOT_HEADER_SIZE : Nat := 24

/-- The packed struct `fram_vslot_header_t`. -/
structure fram_vslot_header_t where
  magic : Nat
  version : Nat
  ts_us : Nat
  len : Nat
  crc32 : Nat
  deriving DecidableEq, Repr

/-- The first `offsetof(fram_vslot_header_t, crc32)` = 20 bytes of the header. -/
def fram_vslot_header_t.head_bytes (h : fram_vslot_header_t) : List Nat :=
  le_bytes 4 h.magic ++ (le_bytes 4 h.version ++ (le_bytes 8 h.ts_us ++ le_bytes 4 h.len))

/-- The memory image of the header. -/
def fram_vslot_header_t.to_bytes (h : fram_vslot_header_t) : List Nat :=
  h.head_bytes ++ le_bytes 4 h.crc32

/-- The header whose memory image is `b` (`memcpy(hdr, buf, sizeof(*hdr))`). -/
def fram_vslot_header_of_bytes (b : List Nat) : fram_vslot_header_t :=
  { magic := le_val (slice b 0 4)
    version := le_val (slice b 4 4)
    ts_us := le_val (slice b 8 8)
    len := le_val (slice b 16 4)
    crc32 := le_val (slice b 20 4) }

/-- The struct `fram_vslot_t`; `part` is `none` for a `NULL` partition. -/
structure fram_vslot_t where
  part : Option fram_partition_t
  slot_count : Nat
  max_payload : Nat
  slot_size : Nat
  magic : Nat
  active_slot : Nat
  active_version : Nat
  has_data : Bool
  mutex : SemaphoreHandle_t

/-- The struct `fram_vslot_config_t` (the partition manager is passed
separately). -/
structure fram_vslot_config_t where
  partition_name : List Nat
  max_payload : Nat
  slot_count : Nat
  magic : Nat

/-- The function `fram_vslot_slot_offset`. -/
def fram_vslot_slot_offset (vs : fram_vslot_t) (slot : Nat) : Nat :=
  (slot * vs.slot_size) % U32

/-- The offset of the commit byte of a slot, as `fram_vslot_read_commit` and
`fram_vslot_write_commit` compute it. -/
def fram_vslot_commit_offset (vs : fram_vslot_t) (slot : Nat) : Nat :=
  (fram_vslot_slot_offset vs slot + VSLOT_HEADER_SIZE + vs.max_payload) % U32

/-- The function `fram_vslot_read_commit`: the result, the byte read (the
caller's initial 0 when nothing was read) and the partition manager. -/
def fram_vslot_read_commit (vs : fram_vslot_t) (pm : fram_pm_t) (slot : Nat) :
    esp_err_t × Nat × fram_pm_t :=
  let r := fram_pm_read pm vs.part (fram_vslot_commit_offset vs slot) 1
  (r.1, r.2.1.headD 0, r.2.2)

/-- The function `fram_vslot_write_commit`. -/
def fram_vslot_write_commit (vs : fram_vslot_t) (pm : fram_pm_t) (slot commit : Nat) :
    esp_err_t × fram_pm_t :=
  fram_pm_write pm vs.part (fram_vslot_commit_offset vs slot) [commit]

/-- The function `fram_vslot_read_header`. -/
def fram_vslot_read_header (vs : fram_vslot_t) (pm : fram_pm_t) (slot : Nat) :
    esp_err_t × fram_vslot_header_t × fram_pm_t :=
  let r := fram_pm_read pm vs.part (fram_vslot_slot_offset vs slot) VSLOT_HEADER_SIZE
  (r.1, fram_vslot_header_of_bytes r.2.1, r.2.2)

/-- The function `fram_vslot_validate_slot`: the result, `*hdr_out` when it was
assigned, and the partition manager. -/
def fram_vslot_validate_slot (vs : fram_vslot_t) (pm : fram_pm_t) (slot : Nat) :
    esp_err_t × Option fram_vslot_header_t × fram_pm_t :=
  let rc := fram_vslot_read_commit vs pm slot
  if rc.1 ≠ ESP_OK ∨ rc.2.1 ≠ FRAM_VSLOT_COMMIT then (ESP_ERR_NOT_FOUND, none, rc.2.2)
  else
    let rh := fram_vslot_read_header vs rc.2.2 slot
    if rh.1 ≠ ESP_OK then (rh.1, none, rh.2.2)
    else
      let hdr := rh.2.1
      if hdr.magic ≠ vs.magic then (ESP_ERR_NOT_FOUND, none, rh.2.2)
      else if hdr.len > vs.max_payload then (ESP_ERR_INVALID_SIZE, none, rh.2.2)
      else
        let rp :=
          if hdr.len > 0 then
            fram_pm_read rh.2.2 vs.part
              ((fram_vslot_slot_offset vs slot + VSLOT_HEADER_SIZE) % U32) hdr.len
          else (ESP_OK, [], rh.2.2)
        if rp.1 ≠ ESP_OK then (rp.1, none, rp.2.2)
        else
          let crc0 := fram_crc32_le 0 hdr.head_bytes
          let crc := if hdr.len > 0 then fram_crc32_le crc0 rp.2.1 else crc0
          if crc ≠ hdr.crc32 then (ESP_ERR_INVALID_CRC, none, rp.2.2)
          else (ESP_OK, some hdr, rp.2.2)

/-- The function `fram_vslot_lock`. -/
def fram_vslot_lock (vs : fram_vslot_t) : esp_err_t :=
  mutex_take vs.mutex

/-- The recovery state of the loop of `fram_vslot_init`. -/
structure vslot_scan_t where
  best_version : Nat
  best_slot : Nat
  found : Bool
  deriving DecidableEq, Repr

/-- The recovery loop of `fram_vslot_init`
(`for (slot = 0; slot < slot_count; slot++)`), run over the given slots. -/
def fram_vslot_init_scan (vs : fram_vslot_t) :
    List Nat → vslot_scan_t → fram_pm_t → vslot_scan_t × fram_pm_t
  | [], st, pm => (st, pm)
  | slot :: rest, st, pm =>
      let r := fram_vslot_validate_slot vs pm slot
      match r.1, r.2.1 with
      | ESP_OK, some hdr =>
          if !st.found || decide (hdr.version > st.best_version) then
            fram_vslot_init_scan vs rest
              { best_version := hdr.version, best_slot := slot, found := true } r.2.2
          else fram_vslot_init_scan vs rest st r.2.2
      | _, _ => fram_vslot_init_scan vs rest st r.2.2

/-- The function `fram_vslot_init`; `vs` is the object as the caller passes it
(left untouched when the configuration is refused). -/
def fram_vslot_init (K : Kconfig) (vs : fram_vslot_t) (pm : fram_pm_t)
    (cfg : fram_vslot_config_t) : esp_err_t × fram_vslot_t × fram_pm_t :=
  if cfg.slot_count < 2 ∨ cfg.slot_count > 3 then (ESP_ERR_INVALID_ARG, vs, pm)
  else if cfg.max_payload = 0 ∨ cfg.max_payload > K.FRAM_VSLOT_MAX_PAYLOAD then
    (ESP_ERR_INVALID_SIZE, vs, pm)
  else
    let vs0 : fram_vslot_t :=
      { part := fram_pm_find pm cfg.partition_name
        slot_count := 0, max_payload := 0, slot_size := 0, magic := 0
        active_slot := 0, active_version := 0, has_data := false
        mutex := SemaphoreHandle_t.NULL }
    match vs0.part with
    | none => (ESP_ERR_NOT_FOUND, vs0, pm)
    | some p =>
      let vs1 : fram_vslot_t :=
        { vs0 with
          slot_count := cfg.slot_count
          max_payload := cfg.max_payload
          slot_size := (VSLOT_HEADER_SIZE + cfg.max_payload + 1) % U32
          magic := cfg.magic }
      if p.size < (vs1.slot_size * vs1.slot_count) % U32 then (ESP_ERR_INVALID_SIZE, vs1, pm)
      else
        let vs2 : fram_vslot_t := { vs1 with mutex := SemaphoreHandle_t.free }
        let s := fram_vslot_init_scan vs2 (List.range vs2.slot_count)
          { best_version := 0, best_slot := 0, found := false } pm
        if s.1.found then
          (ESP_OK, { vs2 with has_data := true, active_slot := s.1.best_slot,
                              active_version := s.1.best_version }, s.2)
        else
          (ESP_OK, { vs2 with has_data := false, active_slot := 0, active_version := 0 }, s.2)

/-- The function `fram_vslot_deinit`. -/
def fram_vslot_deinit (vs : fram_vslot_t) : esp_err_t × fram_vslot_t :=
  (ESP_OK, { vs with has_data := false })

/-- What `fram_vslot_load` leaves behind besides its result: the caller's buffer
(`none` for a `NULL` pointer) and the value of `*len` (`none` for `NULL`). -/
structure vslot_out_t where
  payload : Option (List Nat)
  len : Option Nat
  deriving DecidableEq, Repr

/-- The function `fram_vslot_load`; `out` holds the caller's buffer and `*len`
on entry. -/
def fram_vslot_load (vs : fram_vslot_t) (pm : fram_pm_t) (out : vslot_out_t) :
    esp_err_t × vslot_out_t × fram_pm_t :=
  match out.len with
  | none => (ESP_ERR_INVALID_ARG, out, pm)
  | some cap =>
    if !vs.has_data then (ESP_ERR_NOT_FOUND, out, pm)
    else if fram_vslot_lock vs ≠ ESP_OK then (fram_vslot_lock vs, out, pm)
    else
      let v := fram_vslot_validate_slot vs pm vs.active_slot
      match v.1, v.2.1 with
      | ESP_OK, some hdr =>
          if cap < hdr.len then (ESP_ERR_INVALID_SIZE, { out with len := some hdr.len }, v.2.2)
          else if hdr.len > 0 then
            match out.payload with
            | none => (ESP_ERR_INVALID_SIZE, { out with len := some hdr.len }, v.2.2)
            | some buf =>
                let r := fram_pm_read v.2.2 vs.part
                  ((fram_vslot_slot_offset vs vs.active_slot + VSLOT_HEADER_SIZE) % U32) hdr.len
                if r.1 = ESP_OK then
                  (ESP_OK, { payload := some (r.2.1 ++ buf.drop hdr.len), len := some hdr.len },
                    r.2.2)
                else
                  (r.1, { out with payload := some (r.2.1 ++ buf.drop r.2.1.length) }, r.2.2)
          else (ESP_OK, { out with len := some 0 }, v.2.2)
      | ESP_OK, none => (ESP_FAIL, out, v.2.2)
      | err, _ => (err, out, v.2.2)

/-- The function `fram_vslot_save`; `len` is the length of `payload` (a
non-`NULL` buffer) and `now` is the value `esp_timer_get_time()` returns. -/
def fram_vslot_save (vs : fram_vslot_t) (pm : fram_pm_t) (payload : List Nat) (now : Nat) :
    esp_err_t × fram_vslot_t × fram_pm_t :=
  if payload.length > vs.max_payload then (ESP_ERR_INVALID_SIZE, vs, pm)
  else if fram_vslot_lock vs ≠ ESP_OK then (fram_vslot_lock vs, vs, pm)
  else
    let next_version := if vs.has_data then (vs.active_version + 1) % U32 else 1
    let slot := if vs.has_data then ((vs.active_slot + 1) % U32) % vs.slot_count else 0
    let w0 := fram_vslot_write_commit vs pm slot 0x00
    if w0.1 ≠ ESP_OK then (w0.1, vs, w0.2)
    else
      let hdr0 : fram_vslot_header_t :=
        { magic := vs.magic
          version := next_version
          ts_us := now % U64
          len := payload.length % U32
          crc32 := 0 }
      let crc0 := fram_crc32_le 0 hdr0.head_bytes
      let crc := if payload.length > 0 then fram_crc32_le crc0 payload else crc0
      let hdr : fram_vslot_header_t := { hdr0 with crc32 := crc }
      let w1 := fram_pm_write w0.2 vs.part (fram_vslot_slot_offset vs slot) hdr.to_bytes
      let w2 :=
        if w1.1 = ESP_OK ∧ payload.length > 0 then
          fram_pm_write w1.2 vs.part
            ((fram_vslot_slot_offset vs slot + VSLOT_HEADER_SIZE) % U32) payload
        else w1
      let w3 := if w2.1 = ESP_OK then fram_vslot_write_commit vs w2.2 slot FRAM_VSLOT_COMMIT
        else w2
      if w3.1 = ESP_OK then
        (ESP_OK, { vs with active_slot := slot, active_version := next_version,
                           has_data := true }, w3.2)
      else (w3.1, vs, w3.2)

/-- The function `fram_vslot_peek_len`; `len` is the value of `*len` on entry
(`none` for a `NULL` pointer). -/
def fram_vslot_peek_len (vs : fram_vslot_t) (pm : fram_pm_t) (len : Option Nat) :
    esp_err_t × Option Nat × fram_pm_t :=
  if len.isNone then (ESP_ERR_INVALID_ARG, len, pm)
  else if !vs.has_data then (ESP_ERR_NOT_FOUND, len, pm)
  else if fram_vslot_lock vs ≠ ESP_OK then (fram_vslot_lock vs, len, pm)
  else
    let v := fram_vslot_validate_slot vs pm vs.active_slot
    match v.1, v.2.1 with
    | ESP_OK, some hdr => (ESP_OK, some hdr.len, v.2.2)
    | ESP_OK, none => (ESP_FAIL, len, v.2.2)
    | err, _ => (err, len, v.2.2)

/-- The function `fram_vslot_has_data`. -/
def fram_vslot_has_data (vs : fram_vslot_t) : Bool :=
  vs.has_data

/-- The function `fram_vslot_get_version`. -/
def fram_vslot_get_version (vs : fram_vslot_t) : Nat :=
  vs.active_version

/-- The function `fram_vslot_clear`. -/
def fram_vslot_clear (vs : fram_vslot_t) (pm : fram_pm_t) : esp_err_t × fram_vslot_t × fram_pm_t :=
  if fram_vslot_lock vs ≠ ESP_OK then (fram_vslot_lock vs, vs, pm)
  else
    let r := fram_pm_erase pm vs.part
    if r.1 = ESP_OK then
      (ESP_OK, { vs with has_data := false, active_version := 0, active_slot := 0 }, r.2)
    else (r.1, vs, r.2)

/-- A run of `fram_vslot_save` calls, stopping at the first one that does not
return `ESP_OK`; each entry is a payload with the timer value of its call. -/
def fram_vslot_save_all : fram_vslot_t → fram_pm_t → List (List Nat × Nat) →
    esp_err_t × fram_vslot_t × fram_pm_t
  | vs, pm, [] => (ESP_OK, vs, pm)
  | vs, pm, e :: rest =>
      let r := fram_vslot_save vs pm e.1 e.2
      if r.1 ≠ ESP_OK then r else fram_vslot_save_all r.2.1 r.2.2 rest

/-- The step of `fram_vslot_recovery_commit_missing` (`test_fram.c`) that
zeroes the commit byte of a slot through the mock's backing buffer:
`raw[part.offset + slot * slot_size + sizeof(header) + max_payload] = 0`,
here for the active slot. -/
def vslot_tear_active (vs : fram_vslot_t) (pm : fram_pm_t) (p : fram_partition_t) : fram_pm_t :=
  let commit_offset :=
    (p.offset + vs.active_slot * vs.slot_size + VSLOT_HEADER_SIZE + vs.max_payload) % U32
  { pm with dev := mock_poke pm.dev commit_offset 0x00 }

/-- The header `fram_vslot_save` writes for a payload, a timer value and a
version. -/
def vslot_header_for (magic version now : Nat) (payload : List Nat) : fram_vslot_header_t :=
  { magic := magic
    version := version
    ts_us := now % U64
    len := payload.length
    crc32 := fram_crc32_le 0
      (le_bytes 4 magic ++ (le_bytes 4 version ++ (le_bytes 8 (now % U64) ++
        le_bytes 4 payload.length)) ++ payload) }

/-- A slot store as `fram_vslot_init` leaves it on partition `p`: the geometry
fields are consistent, the slots fit in the partition and the mutex exists. -/
structure VslotGeom (vs : fram_vslot_t) (p : fram_partition_t) : Prop where
  part : vs.part = some p
  slot_size : vs.slot_size = VSLOT_HEADER_SIZE + vs.max_payload + 1
  slot_count_pos : 0 < vs.slot_count
  fits : vs.slot_count * vs.slot_size ≤ p.size
  magic : vs.magic < U32
  mutex : vs.mutex = SemaphoreHandle_t.free

/-- Slot `slot` of the partition holds the committed record `(hdr, payload)`. -/
structure VSlotRec (pmem : Nat → Nat) (vs : fram_vslot_t) (slot : Nat)
    (hdr : fram_vslot_header_t) (payload : List Nat) : Prop where
  image : mem_read pmem (slot * vs.slot_size) (VSLOT_HEADER_SIZE + payload.length)
    = hdr.to_bytes ++ payload
  commit : pmem (slot * vs.slot_size + VSLOT_HEADER_SIZE + vs.max_payload) = FRAM_VSLOT_COMMIT

/-- The slot store and its partition after the records `es` (payload and timer
value of each save, oldest first) have been saved on an erased partition:
record `i` (from 0) is stored in slot `i % slot_count` with version `i + 1`,
the last `slot_count` records are present, and the slots never written are not
committed. -/
structure VslotAfter (vs : fram_vslot_t) (pmem : Nat → Nat)
    (es : List (List Nat × Nat)) : Prop where
  has_data : vs.has_data = decide (0 < es.length)
  active_slot : vs.active_slot = (es.length - 1) % vs.slot_count
  active_version : vs.active_version = es.length % U32
  bounded : ∀ i, i < es.length → (es.getD i ([], 0)).1.length ≤ vs.max_payload
  window : ∀ i, i < es.length → es.length ≤ i + vs.slot_count →
    VSlotRec pmem vs (i % vs.slot_count)
      (vslot_header_for vs.magic ((i + 1) % U32) (es.getD i ([], 0)).2 (es.getD i ([], 0)).1)
      (es.getD i ([], 0)).1
  fresh : ∀ j, es.length ≤ j → j < vs.slot_count →
    pmem (j * vs.slot_size + VSLOT_HEADER_SIZE + vs.max_payload) ≠ FRAM_VSLOT_COMMIT

/-- The object `fram_vslot_init` builds on partition `p` when no slot holds a
valid record. -/
def vslot_empty (p : fram_partition_t) (cfg : fram_vslot_config_t) : fram_vslot_t :=
  { part := some p
    slot_count := cfg.slot_count
    max_payload := cfg.max_payload
    slot_size := (VSLOT_HEADER_SIZE + cfg.max_payload + 1) % U32
    magic := cfg.magic
    active_slot := 0, active_version := 0, has_data := false
    mutex := SemaphoreHandle_t.free }

/-- A view of the slots of a partition: `V slot` is the version of the valid
record stored in the slot, and `none` for a slot whose commit byte is not
set. -/
def VslotView (vs : fram_vslot_t) (pmem : Nat → Nat) (V : Nat → Option Nat) : Prop :=
  ∀ slot, slot < vs.slot_count →
    (∀ q, V slot = some q → q < U32 ∧ ∃ now payload,
      payload.length ≤ vs.max_payload ∧
      VSlotRec pmem vs slot (vslot_header_for vs.magic q now payload) payload) ∧
    (V slot = none →
      pmem (slot * vs.slot_size + VSLOT_HEADER_SIZE + vs.max_payload) ≠ FRAM_VSLOT_COMMIT)

/-- The recovery loop of `fram_vslot_init` over a view of the slots. -/
def vslot_scan_view (V : Nat → Option Nat) : List Nat → vslot_scan_t → vslot_scan_t
  | [], st => st
  | slot :: rest, st =>
      match V slot with
      | some q =>
          if !st.found || decide (q > st.best_version) then
            vslot_scan_view V rest { best_version := q, best_slot := slot, found := true }
          else vslot_scan_view V rest st
      | none => vslot_scan_view V rest st

/-- The object `fram_vslot_init` computes on partition `p` from a view of the
slots. -/
def vslot_recovered (p : fram_partition_t) (cfg : fram_vslot_config_t)
    (V : Nat → Option Nat) : fram_vslot_t :=
  let s := vslot_scan_view V (List.range cfg.slot_count)
    { best_version := 0, best_slot := 0, found := false }
  if s.found then
    { vslot_empty p cfg with
      has_data := true, active_slot := s.best_slot, active_version := s.best_version }
  else vslot_empty p cfg

/-- The view of the slots after `k` saves on `n` slots, once the commit byte of
the active slot (record `k - 1`) is zeroed: slot `s` holds the newest record
stored in it, of index `k - 1 - (k - 1 - s) % n` and version index + 1. -/
def vslot_torn_view (k n : Nat) (s : Nat) : Option Nat :=
  if k ≤ s then none
  else if k - 1 - (k - 1 - s) % n = k - 1 then none
  else some ((k - 1 - (k - 1 - s) % n + 1) % U32)

/-- The valid records of a view are the records of indices `lo ≤ i < hi`, each
in slot `i % n` with version `(i + 1) % 2^32`. -/
def VslotWindow (V : Nat → Option Nat) (n lo hi : Nat) : Prop :=
  ∀ s, s < n → ∀ q, V s = some q ↔ ∃ i, lo ≤ i ∧ i < hi ∧ i % n = s ∧ q = (i + 1) % U32

/-! ### The vslot configuration of `test_fram.c` -/

/-- The configuration of `fram_vslot_recovery_commit_missing`. -/
def example_vslot_cfg : fram_vslot_config_t :=
  { partition_name := [0x76, 0x73, 0x6C, 0x6F, 0x74], max_payload := 16, slot_count := 2
    magic := 0x56534C54 }

/-- The same configuration with three slots. -/
def example_vslot_cfg3 : fram_vslot_config_t :=
  { partition_name := [0x76, 0x73, 0x6C, 0x6F, 0x74], max_payload := 16, slot_count := 3
    magic := 0x56534C54 }

/-- A zeroed `fram_vslot_t` object. -/
def example_vslot0 : fram_vslot_t :=
  { part := none, slot_count := 0, max_payload := 0, slot_size := 0, magic := 0
    active_slot := 0, active_version := 0, has_data := false
    mutex := SemaphoreHandle_t.NULL }

/-- The two saves of `fram_vslot_recovery_commit_missing`: `0x11111111` and
`0x22222222`, with timer values 10 and 20. -/
def example_vslot_entries : List (List Nat × Nat) :=
  [([0x11, 0x11, 0x11, 0x11], 10), ([0x22, 0x22, 0x22, 0x22], 20)]

/-- The slot store and the partition manager after `fram_vslot_init` on the
erased example partition and the saves `entries`. -/
def example_vslot_run (cfg : fram_vslot_config_t) (entries : List (List Nat × Nat)) :
    esp_err_t × fram_vslot_t × fram_pm_t :=
  fram_vslot_save_all (fram_vslot_init example_K example_vslot0 example_pm cfg).2.1
    (fram_vslot_init example_K example_vslot0 example_pm cfg).2.2 entries

/-- A run of `2^32` saves of the same value: the version counter wraps to 0. -/
def example_vslot_wrap : List (List Nat × Nat) :=
  List.replicate 4294967296 ([0x11, 0x11, 0x11, 0x11], 0)

/-- A run of `2^32 + 1` saves whose last three values differ: the versions of
the last three records are `2^32 - 1`, `0` and `1`. -/
def example_vslot_wrap3 : List (List Nat × Nat) :=
  List.replicate 4294967294 ([0x00], 0) ++ [([0x11], 0), ([0x22], 0), ([0x33], 0)]

/-! ## Key/value store (`fram_kvs.h`, `fram_kvs.c`)

Keys are C strings: a key is given by its bytes before the terminating NUL, so
`strlen(key)` is the length of the list. Pointer arguments are taken non-`NULL`
unless stated otherwise. -/

/-- The constant `FRAM_KVS_COMMIT`. -/
def FRAM_KVS_COMMIT : Nat := 0xA5

/-- The constant `FRAM_KVS_FLAG_DELETED`. -/
def FRAM_KVS_FLAG_DELETED : Nat := 1

/-- The constant `FRAM_KVS_CRC_CHUNK`. -/
def FRAM_KVS_CRC_CHUNK : Nat := 64

/-- The constant `FRAM_KVS_KEY_MAX`. -/
def FRAM_KVS_KEY_MAX : Nat := 15

/-- The value `sizeof(fram_kvs_header_t)`. -/
def KVS_HEADER_SIZE : Nat := 20

/-- The packed struct `fram_kvs_header_t`; `reserved` is the little-endian
value of the three reserved bytes. -/
structure fram_kvs_header_t where
  magic : Nat
  seq : Nat
  key_len : Nat
  value_len : Nat
  flags : Nat
  reserved : Nat
  crc32 : Nat
  deriving DecidableEq, Repr

/-- The first `offsetof(fram_kvs_header_t, crc32)` = 16 bytes of the header. -/
def fram_kvs_header_t.head_bytes (h : fram_kvs_header_t) : List Nat :=
  le_bytes 4 h.magic ++ (le_bytes 4 h.seq ++ (le_bytes 2 h.key_len ++
    (le_bytes 2 h.value_len ++ (le_bytes 1 h.flags ++ le_bytes 3 h.reserved))))

/-- The memory image of the header. -/
def fram_kvs_header_t.to_bytes (h : fram_kvs_header_t) : List Nat :=
  h.head_bytes ++ le_bytes 4 h.crc32

/-- The header whose memory image is `b` (`memcpy(hdr, buf, sizeof(*hdr))`). -/
def fram_kvs_header_of_bytes (b : List Nat) : fram_kvs_header_t :=
  { magic := le_val (slice b 0 4)
    seq := le_val (slice b 4 4)
    key_len := le_val (slice b 8 2)
    value_len := le_val (slice b 10 2)
    flags := le_val (slice b 12 1)
    reserved := le_val (slice b 13 3)
    crc32 := le_val (slice b 16 4) }

/-- The struct `fram_kvs_t`; `part` is `none` for a `NULL` partition. -/
structure fram_kvs_t where
  part : Option fram_partition_t
  magic : Nat
  write_offset : Nat
  next_seq : Nat
  ready : Bool
  mutex : SemaphoreHandle_t

/-- The struct `fram_kvs_config_t` (the partition manager is passed
separately). -/
structure fram_kvs_config_t where
  partition_name : List Nat
  magic : Nat

/-- The function `fram_kvs_lock`. -/
def fram_kvs_lock (kvs : fram_kvs_t) : esp_err_t :=
  mutex_take kvs.mutex

/-- The function `fram_kvs_read_header`. -/
def fram_kvs_read_header (kvs : fram_kvs_t) (pm : fram_pm_t) (offset : Nat) :
    esp_err_t × fram_kvs_header_t × fram_pm_t :=
  let r := fram_pm_read pm kvs.part offset KVS_HEADER_SIZE
  (r.1, fram_kvs_header_of_bytes r.2.1, r.2.2)

/-- The offset of the commit byte of a record, as `fram_kvs_read_commit` and
`fram_kvs_write_commit` compute it. -/
def fram_kvs_commit_offset (offset key_len value_len : Nat) : Nat :=
  (offset + KVS_HEADER_SIZE + key_len + value_len) % U32

/-- The function `fram_kvs_read_commit`: the result, the byte read (the
caller's initial 0 when nothing was read) and the partition manager. -/
def fram_kvs_read_commit (kvs : fram_kvs_t) (pm : fram_pm_t) (offset key_len value_len : Nat) :
    esp_err_t × Nat × fram_pm_t :=
  let r := fram_pm_read pm kvs.part (fram_kvs_commit_offset offset key_len value_len) 1
  (r.1, r.2.1.headD 0, r.2.2)

/-- The function `fram_kvs_write_commit`. -/
def fram_kvs_write_commit (kvs : fram_kvs_t) (pm : fram_pm_t)
    (offset key_len value_len commit : Nat) : esp_err_t × fram_pm_t :=
  fram_pm_write pm kvs.part (fram_kvs_commit_offset offset key_len value_len) [commit]

/-- The function `fram_kvs_header_valid`. -/
def fram_kvs_header_valid (K : Kconfig) (kvs : fram_kvs_t) (hdr : fram_kvs_header_t) : Bool :=
  if hdr.magic ≠ kvs.magic then false
  else if hdr.key_len = 0 ∨ hdr.key_len > FRAM_KVS_KEY_MAX then false
  else if hdr.value_len > K.FRAM_KVS_MAX_VALUE then false
  else true

/-- The value loop of `fram_kvs_compute_crc` (`while (remaining > 0)`): the
result, the CRC so far and the partition manager. Every iteration consumes at
least one byte, so `fuel = remaining` iterations are enough. -/
def fram_kvs_crc_loop (kvs : fram_kvs_t) :
    Nat → fram_pm_t → Nat → Nat → Nat → esp_err_t × Nat × fram_pm_t
  | 0, pm, _, _, crc => (ESP_OK, crc, pm)
  | fuel + 1, pm, value_offset, remaining, crc =>
      if remaining > 0 then
        let chunk := if remaining > FRAM_KVS_CRC_CHUNK then FRAM_KVS_CRC_CHUNK else remaining
        let r := fram_pm_read pm kvs.part value_offset chunk
        if r.1 ≠ ESP_OK then (r.1, crc, r.2.2)
        else
          fram_kvs_crc_loop kvs fuel r.2.2 ((value_offset + chunk) % U32) (remaining - chunk)
            (fram_crc32_le crc r.2.1)
      else (ESP_OK, crc, pm)

/-- The function `fram_kvs_compute_crc`: the result, the content of `key_buf`
afterwards (the bytes read over the start of the buffer) and the partition
manager. -/
def fram_kvs_compute_crc (kvs : fram_kvs_t) (pm : fram_pm_t) (offset : Nat)
    (hdr : fram_kvs_header_t) (key_buf : List Nat) : esp_err_t × List Nat × fram_pm_t :=
  let crc0 := fram_crc32_le 0 hdr.head_bytes
  let rk :=
    if hdr.key_len > 0 then
      fram_pm_read pm kvs.part ((offset + KVS_HEADER_SIZE) % U32) hdr.key_len
    else (ESP_OK, key_buf, pm)
  let key_buf1 := rk.2.1 ++ key_buf.drop rk.2.1.length
  if rk.1 ≠ ESP_OK then (rk.1, key_buf1, rk.2.2)
  else
    let crc1 := if hdr.key_len > 0 then fram_crc32_le crc0 (key_buf1.take hdr.key_len) else crc0
    let rv := fram_kvs_crc_loop kvs hdr.value_len rk.2.2
      ((offset + KVS_HEADER_SIZE + hdr.key_len) % U32) hdr.value_len crc1
    if rv.1 ≠ ESP_OK then (rv.1, key_buf1, rv.2.2)
    else if rv.2.1 ≠ hdr.crc32 then (ESP_ERR_INVALID_CRC, key_buf1, rv.2.2)
    else (ESP_OK, key_buf1, rv.2.2)

/-- The locals `found`, `deleted`, `last_hdr` and `last_offset` of
`fram_kvs_scan`. -/
structure kvs_scan_t where
  found : Bool
  deleted : Bool
  last_hdr : fram_kvs_header_t
  last_offset : Nat
  deriving DecidableEq, Repr

/-- A zeroed header (`fram_kvs_header_t last_hdr = {0}`). -/
def kvs_header_zero : fram_kvs_header_t :=
  { magic := 0, seq := 0, key_len := 0, value_len := 0, flags := 0, reserved := 0, crc32 := 0 }

/-- The size of the record with header `hdr`, as the scans compute it. -/
def fram_kvs_record_size (hdr : fram_kvs_header_t) : Nat :=
  (KVS_HEADER_SIZE + hdr.key_len + hdr.value_len + 1) % U32

/-- The loop of `fram_kvs_scan` on partition `p` for the key `key`: `ESP_OK`
when the loop is left by its condition or a `break`, the error when the
function returns from inside the loop, `ESP_FAIL` when the fuel runs out. The
loop condition `offset + sizeof(fram_kvs_header_t) + 1 <= kvs->part->size` is
computed in `size_t`, which is 32 bits wide on the ESP32 targets of the
component, so the sum is taken modulo `2^32`. Every iteration that continues
advances `offset` by a record of at least 21 bytes inside the partition, so
`fuel = p.size + 1` iterations are enough. -/
def fram_kvs_scan_loop (K : Kconfig) (kvs : fram_kvs_t) (p : fram_partition_t)
    (key : List Nat) :
    Nat → fram_pm_t → Nat → kvs_scan_t → List Nat → esp_err_t × kvs_scan_t × fram_pm_t
  | 0, pm, _, st, _ => (ESP_FAIL, st, pm)
  | fuel + 1, pm, offset, st, key_buf =>
      if (offset + KVS_HEADER_SIZE + 1) % U32 ≤ p.size then
        let rh := fram_kvs_read_header kvs pm offset
        if rh.1 ≠ ESP_OK then (rh.1, st, rh.2.2)
        else
          let hdr := rh.2.1
          if !fram_kvs_header_valid K kvs hdr then (ESP_OK, st, rh.2.2)
          else
            let record_size := fram_kvs_record_size hdr
            if offset > p.size ∨ record_size > p.size ∨ (offset + record_size) % U32 > p.size
            then (ESP_OK, st, rh.2.2)
            else
              let rc := fram_kvs_read_commit kvs rh.2.2 offset hdr.key_len hdr.value_len
              if rc.1 ≠ ESP_OK then (rc.1, st, rc.2.2)
              else if rc.2.1 ≠ FRAM_KVS_COMMIT then (ESP_OK, st, rc.2.2)
              else
                let cc := fram_kvs_compute_crc kvs rc.2.2 offset hdr key_buf
                if cc.1 = ESP_ERR_INVALID_CRC then (ESP_OK, st, cc.2.2)
                else if cc.1 ≠ ESP_OK then (cc.1, st, cc.2.2)
                else
                  let st1 : kvs_scan_t :=
                    if hdr.key_len = key.length ∧ cc.2.1.take key.length = key then
                      { found := true
                        deleted := decide (hdr.flags &&& FRAM_KVS_FLAG_DELETED ≠ 0)
                        last_hdr := hdr
                        last_offset := offset }
                    else st
                  fram_kvs_scan_loop K kvs p key fuel cc.2.2 ((offset + record_size) % U32)
                    st1 cc.2.1
      else (ESP_OK, st, pm)

/-- What `fram_kvs_scan` hands back: `*out_hdr` and `*out_offset` when they were
assigned, and `*out_deleted`. -/
structure kvs_scan_out_t where
  hdr : Option fram_kvs_header_t
  offset : Option Nat
  deleted : Bool
  deriving DecidableEq, Repr

/-- The function `fram_kvs_scan` with non-`NULL` output pointers. Without a
partition (where the C code dereferences `NULL`) it reports `ESP_FAIL`. -/
def fram_kvs_scan (K : Kconfig) (kvs : fram_kvs_t) (pm : fram_pm_t) (key : List Nat) :
    esp_err_t × kvs_scan_out_t × fram_pm_t :=
  match kvs.part with
  | none => (ESP_FAIL, { hdr := none, offset := none, deleted := false }, pm)
  | some p =>
    let r := fram_kvs_scan_loop K kvs p key (p.size + 1) pm 0
      { found := false, deleted := false, last_hdr := kvs_header_zero, last_offset := 0 } []
    if r.1 ≠ ESP_OK then (r.1, { hdr := none, offset := none, deleted := false }, r.2.2)
    else if r.2.1.found then
      (ESP_OK, { hdr := some r.2.1.last_hdr, offset := some r.2.1.last_offset,
                 deleted := r.2.1.deleted }, r.2.2)
    else (ESP_ERR_NOT_FOUND, { hdr := none, offset := none, deleted := r.2.1.deleted }, r.2.2)

/-- The loop of `fram_kvs_find_end` on partition `p`: the result, the final
`offset` and `next_seq`, and the partition manager. -/
def fram_kvs_find_end_loop (K : Kconfig) (kvs : fram_kvs_t) (p : fram_partition_t) :
    Nat → fram_pm_t → Nat → Nat → List Nat → esp_err_t × Nat × Nat × fram_pm_t
  | 0, pm, offset, next_seq, _ => (ESP_FAIL, offset, next_seq, pm)
  | fuel + 1, pm, offset, next_seq, key_buf =>
      if (offset + KVS_HEADER_SIZE + 1) % U32 ≤ p.size then
        let rh := fram_kvs_read_header kvs pm offset
        if rh.1 ≠ ESP_OK then (rh.1, offset, next_seq, rh.2.2)
        else
          let hdr := rh.2.1
          if !fram_kvs_header_valid K kvs hdr then (ESP_OK, offset, next_seq, rh.2.2)
          else
            let record_size := fram_kvs_record_size hdr
            if offset > p.size ∨ record_size > p.size ∨ (offset + record_size) % U32 > p.size
            then (ESP_OK, offset, next_seq, rh.2.2)
            else
              let rc := fram_kvs_read_commit kvs rh.2.2 offset hdr.key_len hdr.value_len
              if rc.1 ≠ ESP_OK then (rc.1, offset, next_seq, rc.2.2)
              else if rc.2.1 ≠ FRAM_KVS_COMMIT then (ESP_OK, offset, next_seq, rc.2.2)
              else
                let cc := fram_kvs_compute_crc kvs rc.2.2 offset hdr key_buf
                if cc.1 = ESP_ERR_INVALID_CRC then (ESP_OK, offset, next_seq, cc.2.2)
                else if cc.1 ≠ ESP_OK then (cc.1, offset, next_seq, cc.2.2)
                else
                  let next_seq1 := if hdr.seq ≥ next_seq then (hdr.seq + 1) % U32 else next_seq
                  fram_kvs_find_end_loop K kvs p fuel cc.2.2 ((offset + record_size) % U32)
                    next_seq1 cc.2.1
      else (ESP_OK, offset, next_seq, pm)

/-- The function `fram_kvs_find_end`: the result, `*out_offset` and
`*out_next_seq` when they were assigned, and the partition manager. -/
def fram_kvs_find_end (K : Kconfig) (kvs : fram_kvs_t) (pm : fram_pm_t) :
    esp_err_t × Option (Nat × Nat) × fram_pm_t :=
  match kvs.part with
  | none => (ESP_FAIL, none, pm)
  | some p =>
    let r := fram_kvs_find_end_loop K kvs p (p.size + 1) pm 0 0 []
    if r.1 ≠ ESP_OK then (r.1, none, r.2.2.2)
    else (ESP_OK, some (r.2.1, r.2.2.1), r.2.2.2)

/-- The function `fram_kvs_init`. -/
def fram_kvs_init (K : Kconfig) (pm : fram_pm_t) (cfg : fram_kvs_config_t) :
    esp_err_t × fram_kvs_t × fram_pm_t :=
  let kvs0 : fram_kvs_t :=
    { part := fram_pm_find pm cfg.partition_name
      magic := 0, write_offset := 0, next_seq := 0, ready := false
      mutex := SemaphoreHandle_t.NULL }
  match kvs0.part with
  | none => (ESP_ERR_NOT_FOUND, kvs0, pm)
  | some _ =>
    let kvs1 : fram_kvs_t := { kvs0 with magic := cfg.magic, mutex := SemaphoreHandle_t.free }
    let r := fram_kvs_find_end K kvs1 pm
    match r.1, r.2.1 with
    | ESP_OK, some (offset, next_seq) =>
        (ESP_OK, { kvs1 with write_offset := offset, next_seq := next_seq, ready := true },
          r.2.2)
    | ESP_OK, none => (ESP_FAIL, kvs1, r.2.2)
    | err, _ => (err, kvs1, r.2.2)

/-- The function `fram_kvs_deinit`. -/
def fram_kvs_deinit (kvs : fram_kvs_t) : esp_err_t × fram_kvs_t :=
  (ESP_OK, { kvs with ready := false })

/-- The function `fram_kvs_get`; `buf` is the caller's buffer and `len` the
value of `*len` on entry. The results are the buffer and `*len` after the
call. -/
def fram_kvs_get (K : Kconfig) (kvs : fram_kvs_t) (pm : fram_pm_t) (key : List Nat)
    (buf : List Nat) (len : Nat) : esp_err_t × List Nat × Nat × fram_pm_t :=
  if key.length = 0 ∨ key.length > FRAM_KVS_KEY_MAX then (ESP_ERR_INVALID_ARG, buf, len, pm)
  else if fram_kvs_lock kvs ≠ ESP_OK then (fram_kvs_lock kvs, buf, len, pm)
  else
    let s := fram_kvs_scan K kvs pm key
    match s.1, s.2.1.hdr, s.2.1.offset with
    | ESP_OK, some hdr, some offset =>
        if s.2.1.deleted then (ESP_ERR_NOT_FOUND, buf, len, s.2.2)
        else if len < hdr.value_len then (ESP_ERR_INVALID_SIZE, buf, hdr.value_len, s.2.2)
        else if hdr.value_len > 0 then
          let r := fram_pm_read s.2.2 kvs.part
            ((offset + KVS_HEADER_SIZE + hdr.key_len) % U32) hdr.value_len
          if r.1 = ESP_OK then (ESP_OK, r.2.1 ++ buf.drop hdr.value_len, hdr.value_len, r.2.2)
          else (r.1, r.2.1 ++ buf.drop r.2.1.length, len, r.2.2)
        else (ESP_OK, buf, hdr.value_len, s.2.2)
    | _, _, _ => (ESP_ERR_NOT_FOUND, buf, len, s.2.2)

/-- The record writes shared by `fram_kvs_set` and `fram_kvs_delete`: the
commit byte zeroed, the header, the key, the value when it is not empty, and
the commit byte. -/
def fram_kvs_write_record (kvs : fram_kvs_t) (pm : fram_pm_t) (hdr : fram_kvs_header_t)
    (key value : List Nat) : esp_err_t × fram_pm_t :=
  let w0 := fram_kvs_write_commit kvs pm kvs.write_offset hdr.key_len hdr.value_len 0x00
  if w0.1 ≠ ESP_OK then w0
  else
    let w1 := fram_pm_write w0.2 kvs.part kvs.write_offset hdr.to_bytes
    let w2 :=
      if w1.1 = ESP_OK then
        fram_pm_write w1.2 kvs.part ((kvs.write_offset + KVS_HEADER_SIZE) % U32) key
      else w1
    let w3 :=
      if w2.1 = ESP_OK ∧ value.length > 0 then
        fram_pm_write w2.2 kvs.part
          ((kvs.write_offset + KVS_HEADER_SIZE + key.length) % U32) value
      else w2
    if w3.1 = ESP_OK then
      fram_kvs_write_commit kvs w3.2 kvs.write_offset hdr.key_len hdr.value_len FRAM_KVS_COMMIT
    else w3

/-- The function `fram_kvs_set`; `len` is the length of `value`. Without a
partition (where the C code dereferences `NULL`) it reports `ESP_FAIL`. -/
def fram_kvs_set (K : Kconfig) (kvs : fram_kvs_t) (pm : fram_pm_t) (key value : List Nat) :
    esp_err_t × fram_kvs_t × fram_pm_t :=
  if key.length = 0 ∨ key.length > FRAM_KVS_KEY_MAX then (ESP_ERR_INVALID_ARG, kvs, pm)
  else if value.length > UINT16_MAX then (ESP_ERR_INVALID_SIZE, kvs, pm)
  else if value.length > K.FRAM_KVS_MAX_VALUE then (ESP_ERR_INVALID_SIZE, kvs, pm)
  else if fram_kvs_lock kvs ≠ ESP_OK then (fram_kvs_lock kvs, kvs, pm)
  else
    match kvs.part with
    | none => (ESP_FAIL, kvs, pm)
    | some p =>
      let record_size := (KVS_HEADER_SIZE + key.length + value.length + 1) % U32
      if (kvs.write_offset + record_size) % U32 > p.size then (ESP_ERR_NO_MEM, kvs, pm)
      else
        let hdr0 : fram_kvs_header_t :=
          { magic := kvs.magic
            seq := kvs.next_seq
            key_len := key.length % 65536
            value_len := value.length % 65536
            flags := 0
            reserved := 0
            crc32 := 0 }
        let crc0 := fram_crc32_le (fram_crc32_le 0 hdr0.head_bytes) key
        let crc := if value.length > 0 then fram_crc32_le crc0 value else crc0
        let hdr : fram_kvs_header_t := { hdr0 with crc32 := crc }
        let w := fram_kvs_write_record kvs pm hdr key value
        if w.1 = ESP_OK then
          (ESP_OK, { kvs with write_offset := (kvs.write_offset + record_size) % U32
                              next_seq := (kvs.next_seq + 1) % U32 }, w.2)
        else (w.1, kvs, w.2)

/-- The function `fram_kvs_delete`. Without a partition (where the C code
dereferences `NULL`) it reports `ESP_FAIL`. -/
def fram_kvs_delete (kvs : fram_kvs_t) (pm : fram_pm_t) (key : List Nat) :
    esp_err_t × fram_kvs_t × fram_pm_t :=
  if key.length = 0 ∨ key.length > FRAM_KVS_KEY_MAX then (ESP_ERR_INVALID_ARG, kvs, pm)
  else if fram_kvs_lock kvs ≠ ESP_OK then (fram_kvs_lock kvs, kvs, pm)
  else
    match kvs.part with
    | none => (ESP_FAIL, kvs, pm)
    | some p =>
      let record_size := (KVS_HEADER_SIZE + key.length + 0 + 1) % U32
      if (kvs.write_offset + record_size) % U32 > p.size then (ESP_ERR_NO_MEM, kvs, pm)
      else
        let hdr0 : fram_kvs_header_t :=
          { magic := kvs.magic
            seq := kvs.next_seq
            key_len := key.length % 65536
            value_len := 0
            flags := FRAM_KVS_FLAG_DELETED
            reserved := 0
            crc32 := 0 }
        let crc := fram_crc32_le (fram_crc32_le 0 hdr0.head_bytes) key
        let hdr : fram_kvs_header_t := { hdr0 with crc32 := crc }
        let w := fram_kvs_write_record kvs pm hdr key []
        if w.1 = ESP_OK then
          (ESP_OK, { kvs with write_offset := (kvs.write_offset + record_size) % U32
                              next_seq := (kvs.next_seq + 1) % U32 }, w.2)
        else (w.1, kvs, w.2)

/-- The function `fram_kvs_exists`. -/
def fram_kvs_exists (K : Kconfig) (kvs : fram_kvs_t) (pm : fram_pm_t) (key : List Nat) :
    Bool × fram_pm_t :=
  if key.length = 0 ∨ key.length > FRAM_KVS_KEY_MAX then (false, pm)
  else if fram_kvs_lock kvs ≠ ESP_OK then (false, pm)
  else
    let s := fram_kvs_scan K kvs pm key
    (decide (s.1 = ESP_OK) && !s.2.1.deleted, s.2.2)

/-- The function `fram_kvs_get_len`; `len` is the value of `*len` on entry. -/
def fram_kvs_get_len (K : Kconfig) (kvs : fram_kvs_t) (pm : fram_pm_t) (key : List Nat)
    (len : Nat) : esp_err_t × Nat × fram_pm_t :=
  if key.length = 0 ∨ key.length > FRAM_KVS_KEY_MAX then (ESP_ERR_INVALID_ARG, len, pm)
  else if fram_kvs_lock kvs ≠ ESP_OK then (fram_kvs_lock kvs, len, pm)
  else
    let s := fram_kvs_scan K kvs pm key
    match s.1, s.2.1.hdr with
    | ESP_OK, some hdr =>
        if s.2.1.deleted then (ESP_ERR_NOT_FOUND, len, s.2.2)
        else (ESP_OK, hdr.value_len, s.2.2)
    | _, _ => (ESP_ERR_NOT_FOUND, len, s.2.2)

/-! ### Runs of calls and the records they leave on the media -/

/-- One mutating call: `fram_kvs_set(key, value, len)` or
`fram_kvs_delete(key)`. -/
inductive kvs_op where
  | set (key value : List Nat)
  | del (key : List Nat)
  deriving DecidableEq, Repr

/-- The key of a call. -/
def kvs_op.key : kvs_op → List Nat
  | kvs_op.set k _ => k
  | kvs_op.del k => k

/-- The value a call stores (none for a delete). -/
def kvs_op.value : kvs_op → List Nat
  | kvs_op.set _ v => v
  | kvs_op.del _ => []

/-- The `flags` byte of the record a call writes. -/
def kvs_op.flags : kvs_op → Nat
  | kvs_op.set _ _ => 0
  | kvs_op.del _ => FRAM_KVS_FLAG_DELETED

/-- The size of the record a call writes: header, key, value, commit byte. -/
def kvs_op.size (op : kvs_op) : Nat :=
  KVS_HEADER_SIZE + op.key.length + op.value.length + 1

/-- The arguments of a call pass the checks of `fram_kvs_set` or
`fram_kvs_delete`. -/
def kvs_op.valid (K : Kconfig) (op : kvs_op) : Prop :=
  1 ≤ op.key.length ∧ op.key.length ≤ FRAM_KVS_KEY_MAX ∧
    op.value.length ≤ UINT16_MAX ∧ op.value.length ≤ K.FRAM_KVS_MAX_VALUE

/-- The call `op` on the store. -/
def fram_kvs_apply (K : Kconfig) (kvs : fram_kvs_t) (pm : fram_pm_t) :
    kvs_op → esp_err_t × fram_kvs_t × fram_pm_t
  | kvs_op.set k v => fram_kvs_set K kvs pm k v
  | kvs_op.del k => fram_kvs_delete kvs pm k

/-- A run of `fram_kvs_set` and `fram_kvs_delete` calls, stopping at the first
one that does not return `ESP_OK`. -/
def fram_kvs_apply_all (K : Kconfig) : fram_kvs_t → fram_pm_t → List kvs_op →
    esp_err_t × fram_kvs_t × fram_pm_t
  | kvs, pm, [] => (ESP_OK, kvs, pm)
  | kvs, pm, op :: rest =>
      let r := fram_kvs_apply K kvs pm op
      if r.1 ≠ ESP_OK then r else fram_kvs_apply_all K r.2.1 r.2.2 rest

/-- The effect of one call on the value bound to the key `k`. -/
def kvs_map_step (k : List Nat) (acc : Option (List Nat)) (op : kvs_op) : Option (List Nat) :=
  if op.key = k then
    match op with
    | kvs_op.set _ v => some v
    | kvs_op.del _ => none
  else acc

/-- The store as a map, in the words of the specification: the value of the
most recent `set` of `k` when the most recent call on `k` is a `set`, nothing
when `k` was never set or the most recent call on `k` is a `delete`. -/
def kvs_map_spec (ops : List kvs_op) (k : List Nat) : Option (List Nat) :=
  ops.foldl (kvs_map_step k) none

/-- The header `fram_kvs_set` or `fram_kvs_delete` writes for a call, given
the magic and the sequence number of the store. -/
def kvs_header_for (magic seq : Nat) (op : kvs_op) : fram_kvs_header_t :=
  let hdr0 : fram_kvs_header_t :=
    { magic := magic, seq := seq, key_len := op.key.length, value_len := op.value.length
      flags := op.flags, reserved := 0, crc32 := 0 }
  { hdr0 with
    crc32 := fram_crc32_le (fram_crc32_le (fram_crc32_le 0 hdr0.head_bytes) op.key) op.value }

/-- The partition holds at offset `off` the committed record of the call `op`
written with sequence number `seq`. -/
def KRec (pmem : Nat → Nat) (off magic seq : Nat) (op : kvs_op) : Prop :=
  mem_read pmem off op.size
    = (kvs_header_for magic seq op).to_bytes ++ (op.key ++ (op.value ++ [FRAM_KVS_COMMIT]))

/-- The partition holds from offset `off` on the committed records of the
calls `ops`, one after the other. -/
def KLog (pmem : Nat → Nat) (magic : Nat) : Nat → List kvs_op → Prop
  | _, [] => True
  | off, op :: rest =>
      (∃ seq, seq < U32 ∧ KRec pmem off magic seq op) ∧ KLog pmem magic (off + op.size) rest

/-- The total size of the records of the calls `ops`. -/
def kvs_log_size (ops : List kvs_op) : Nat :=
  (ops.map kvs_op.size).sum

/-- The store and its partition after the successful calls `ops` on an empty
store over an erased partition. -/
structure KvsAfter (K : Kconfig) (kvs : fram_kvs_t) (p : fram_partition_t) (pmem : Nat → Nat)
    (ops : List kvs_op) : Prop where
  part : kvs.part = some p
  magic_lt : kvs.magic < U32
  mutex : kvs.mutex = SemaphoreHandle_t.free
  offset : kvs.write_offset = kvs_log_size ops
  fits : kvs_log_size ops ≤ p.size
  seq_lt : kvs.next_seq < U32
  log : KLog pmem kvs.magic 0 ops
  valid : ∀ op, op ∈ ops → op.valid K
  erased : ∀ j, kvs_log_size ops ≤ j → j < p.size → pmem j = 0xFF

/-- The scan loop stops at offset `off` without touching its state: the end
of the log, as the loops of `fram_kvs_scan` see it. -/
def KStop (K : Kconfig) (kvs : fram_kvs_t) (p : fram_partition_t) (pmem : Nat → Nat)
    (off : Nat) : Prop :=
  ∀ key fuel pm st key_buf, PmOK pm p pmem →
    ∃ pm1, fram_kvs_scan_loop K kvs p key (fuel + 1) pm off st key_buf = (ESP_OK, st, pm1)
      ∧ PmOK pm1 p pmem

/-- What the scan state says about the key: `none` when no live record was
found, `some v` when the last record found is at `last_offset`, is not
deleted, and stores the value `v` inside the partition. -/
def ScanSees (p : fram_partition_t) (pmem : Nat → Nat) (key : List Nat) (st : kvs_scan_t) :
    Option (List Nat) → Prop
  | none => st.found = false ∨ st.deleted = true
  | some v => st.found = true ∧ st.deleted = false ∧ st.last_hdr.key_len = key.length ∧
      st.last_hdr.value_len = v.length ∧
      mem_read pmem (st.last_offset + KVS_HEADER_SIZE + key.length) v.length = v ∧
      st.last_offset + KVS_HEADER_SIZE + key.length + v.length < p.size

/-- The state of the scan after a record of the call `op` stored at `off`
with header `hdr` has been accepted. -/
def kvs_scan_next (key : List Nat) (st : kvs_scan_t) (off : Nat) (hdr : fram_kvs_header_t)
    (op : kvs_op) : kvs_scan_t :=
  if op.key = key then
    { found := true
      deleted := decide (op.flags &&& FRAM_KVS_FLAG_DELETED ≠ 0)
      last_hdr := hdr
      last_offset := off }
  else st

/-- The common end of `fram_kvs_set` and `fram_kvs_delete` for the call `op`:
the space check, the record writes and the update of the store. -/
def kvs_commit_record (kvs : fram_kvs_t) (pm : fram_pm_t) (p : fram_partition_t)
    (op : kvs_op) : esp_err_t × fram_kvs_t × fram_pm_t :=
  if (kvs.write_offset + op.size % U32) % U32 > p.size then (ESP_ERR_NO_MEM, kvs, pm)
  else
    let w := fram_kvs_write_record kvs pm (kvs_header_for kvs.magic kvs.next_seq op)
      op.key op.value
    if w.1 = ESP_OK then
      (ESP_OK, { kvs with write_offset := (kvs.write_offset + op.size % U32) % U32
                          next_seq := (kvs.next_seq + 1) % U32 }, w.2)
    else (w.1, kvs, w.2)

/-- The step of `fram_kvs_crc_stop_and_len` (`test_fram.c`) that overwrites the
stored `crc32` field of the record at `offset` through the mock's backing
buffer: `memcpy(raw + part.offset + offset + offsetof(header, crc32), &crc, 4)`. -/
def kvs_poke_crc (pm : fram_pm_t) (p : fram_partition_t) (offset crc : Nat) : fram_pm_t :=
  let d0 := mock_poke pm.dev (p.offset + (offset + 16)) (crc % 256)
  let d1 := mock_poke d0 (p.offset + (offset + 17)) (crc / 256 % 256)
  let d2 := mock_poke d1 (p.offset + (offset + 18)) (crc / 65536 % 256)
  { pm with dev := mock_poke d2 (p.offset + (offset + 19)) (crc / 16777216 % 256) }

/-! ### The configuration of `fram_kvs_crc_stop_and_len` and of example E6 -/

/-- The configuration of the test: partition `"kvs"`, magic `0x4B56534D`. -/
def example_kvs_cfg : fram_kvs_config_t :=
  { partition_name := [0x6B, 0x76, 0x73], magic := 0x4B56534D }

/-- The calls `set("a", "one", 3)`, `set("b", "two", 3)` of the test. -/
def example_kvs_ops : List kvs_op :=
  [kvs_op.set [0x61] [0x6F, 0x6E, 0x65], kvs_op.set [0x62] [0x74, 0x77, 0x6F]]

/-- The calls `set("cfg", "on", 2)`, `delete("cfg")`, `set("cfg", "off", 3)`. -/
def example_kvs_ops6 : List kvs_op :=
  [kvs_op.set [0x63, 0x66, 0x67] [0x6F, 0x6E], kvs_op.del [0x63, 0x66, 0x67],
    kvs_op.set [0x63, 0x66, 0x67] [0x6F, 0x66, 0x66]]

/-- A partition of `2^32 - 2` bytes at the start of a device. -/
def example_big_part : fram_partition_t :=
  { name := [0x6B, 0x76, 0x73], offset := 0, size := 4294967294, flags := 0 }

/-- An initialised partition manager over an erased mock device of
`2^32 - 1` bytes with the single partition `example_big_part`. -/
def example_big_pm : fram_pm_t :=
  { dev := mock_dev (fun _ => 0xFF) 4294967295
    partitions := [example_big_part]
    partition_count := 1
    initialized := true }

/-- The call `set("a", "one", 3)` repeated 171798691 times: records of 25
bytes that end at offset `2^32 - 21`. -/
def example_big_ops : List kvs_op :=
  List.replicate 171798691 (kvs_op.set [0x61] [0x6F, 0x6E, 0x65])

/-- The store and the partition manager after `fram_kvs_init` with the
configuration of the test on `pm` and then the calls `ops`. -/
def example_kvs_run (pm : fram_pm_t) (ops : List kvs_op) : esp_err_t × fram_kvs_t × fram_pm_t :=
  fram_kvs_apply_all example_K (fram_kvs_init example_K pm example_kvs_cfg).2.1
    (fram_kvs_init example_K pm example_kvs_cfg).2.2 ops

/-- The first call of the test on the erased example partition:
`fram_kvs_init`, then `set("a", "one", 3)`. -/
def example_kvs_a : esp_err_t × fram_kvs_t × fram_pm_t :=
  fram_kvs_set example_K (fram_kvs_init example_K example_pm example_kvs_cfg).2.1
    (fram_kvs_init example_K example_pm example_kvs_cfg).2.2 [0x61] [0x6F, 0x6E, 0x65]

/-- The second call of the test: `set("b", "two", 3)`. -/
def example_kvs_b : esp_err_t × fram_kvs_t × fram_pm_t :=
  fram_kvs_set example_K example_kvs_a.2.1 example_kvs_a.2.2 [0x62] [0x74, 0x77, 0x6F]

/-- The stored `crc32` field of the record of `"b"`, as the test reads it in
the backing buffer (`offset_b` is `write_offset` before the second call). -/
def example_kvs_stored_crc : Nat :=
  le_val (mem_read example_kvs_b.2.2.dev.hal.ctx.buffer
    (example_kvs_part.offset + (example_kvs_a.2.1.write_offset + 16)) 4)

/-- The value the test writes back: `crc ^= 0xFFFFFFFF`. -/
def example_kvs_bad_crc : Nat :=
  example_kvs_stored_crc ^^^ 0xFFFFFFFF

/-! ## Partition table queries and the words of the specification -/

/-- The function `fram_pm_count`. -/
def fram_pm_count (pm : fram_pm_t) : Nat :=
  pm.partition_count

/-- The function `fram_pm_get`. -/
def fram_pm_get (pm : fram_pm_t) (index : Nat) : Option fram_partition_t :=
  if index ≥ pm.partition_count then none else pm.partitions.get? index

/-- An entry of a partition table is acceptable, in the words of the
specification (section 4.4): a name of 1 to 15 bytes, a size greater than 0,
and `offset + size` within the device. -/
def spec_entry_ok (dev_size : Nat) (e : fram_partition_t) : Prop :=
  1 ≤ e.name.length ∧ e.name.length ≤ 15 ∧ 0 < e.size ∧ e.offset + e.size ≤ dev_size

/-- Two entries occupy byte ranges that do not overlap (ranges that merely
touch do not overlap). -/
def spec_ranges_disjoint (a b : fram_partition_t) : Prop :=
  a.offset + a.size ≤ b.offset ∨ b.offset + b.size ≤ a.offset

/-- A partition table of `count` entries is acceptable, in the words of the
specification: between 1 and 16 entries, every entry acceptable, and every two
entries on byte ranges that do not overlap. -/
def spec_table_ok (dev_size : Nat) (parts : List fram_partition_t) (count : Nat) : Prop :=
  1 ≤ count ∧ count ≤ 16 ∧ (∀ e, e ∈ parts.take count → spec_entry_ok dev_size e) ∧
    (parts.take count).Pairwise spec_ranges_disjoint

/-- The partition `"kvs"` of the tests with the read-only flag set. -/
def example_ro_part : fram_partition_t :=
  { example_kvs_part with flags := FRAM_PART_FLAG_READONLY }

/-- A partition of 100 bytes, not a multiple of the erase chunk, at offset
944 of the example device. -/
def example_odd_part : fram_partition_t :=
  { name := [0x6F, 0x64, 0x64], offset := 944, size := 100, flags := 0 }

/-- An initialised partition manager over a zero-filled 32 KiB mock device
with the single partition `example_odd_part`. -/
def example_zero_pm : fram_pm_t :=
  { dev := mock_dev (fun _ => 0) 32768
    partitions := [example_odd_part]
    partition_count := 1
    initialized := true }

/-- A zeroed `fram_pm_t` object over the example device. -/
def example_pm0 : fram_pm_t :=
  { dev := mock_dev (fun _ => 0xFF) 32768
    partitions := []
    partition_count := 0
    initialized := false }

/-- The table of `setup_partitions` in `test_fram.c`. -/
def example_parts : List fram_partition_t :=
  [example_ring_part, example_vslot_part, example_kvs_part]

/-! ## The superblock write before its publish point -/

/-- The first part of `fram_superblock_write`, up to and including the write
of the entire record with `commit = 0` (step 5 of the write algorithm): the
result of that write, the offset of the target copy, and the device. The
function goes on with the write of the commit byte when the result is
`ESP_OK`, and returns the result otherwise. -/
def fram_superblock_write_staged (dev : fram_dev_t) (base_offset : Nat)
    (sb : fram_superblock_t) : esp_err_t × Nat × fram_dev_t :=
  let dev_size := fram_dev_get_size dev
  if sb.magic ≠ FRAM_SUPERBLOCK_MAGIC ∨ sb.version ≠ FRAM_SUPERBLOCK_VERSION then
    (ESP_ERR_INVALID_ARG, 0, dev)
  else if sb.size_bytes ≠ dev_size ∨ sb.count > FRAM_PART_MAX then
    (ESP_ERR_INVALID_ARG, 0, dev)
  else
    let ra := fram_dev_read dev base_offset SUPERBLOCK_SIZE
    let a := fram_superblock_of_bytes ra.2.1
    let a_valid := if ra.1 = ESP_OK then fram_superblock_valid a dev_size else false
    let rb := fram_dev_read ra.2.2 ((base_offset + SUPERBLOCK_SIZE) % U32) SUPERBLOCK_SIZE
    let b := fram_superblock_of_bytes rb.2.1
    let b_valid := if rb.1 = ESP_OK then fram_superblock_valid b dev_size else false
    let choice := fram_superblock_write_select a_valid b_valid a b
    let target_index := choice.1
    let next_seq := choice.2
    let temp := fram_superblock_write_temp sb next_seq
    let offset := fram_superblock_offset base_offset target_index
    let w := fram_dev_write rb.2.2 offset temp.to_bytes
    (w.1, offset, w.2)

/-- A superblock with one partition entry for a device of 944 bytes. -/
def example_sb_one : fram_superblock_t :=
  { magic := FRAM_SUPERBLOCK_MAGIC, version := FRAM_SUPERBLOCK_VERSION, count := 1,
    seq := 0, size_bytes := 944, parts := List.replicate 448 0, crc32 := 0,
    commit := 0, reserved := [0, 0, 0] }

/-- The content of a device of 944 bytes whose two copies are both committed
with the sequence number 7: copy A holds `example_sb_one`, copy B holds
`example_new_superblock`. -/
def example_tie_mem : Nat → Nat :=
  mem_write (mem_write (mem_write (mem_write (fun _ => 0xFF)
    0 (fram_superblock_write_temp example_sb_one 7).to_bytes)
    (0 + SUPERBLOCK_COMMIT_OFFSET) [FRAM_SUPERBLOCK_COMMIT])
    472 (fram_superblock_write_temp example_new_superblock 7).to_bytes)
    (472 + SUPERBLOCK_COMMIT_OFFSET) [FRAM_SUPERBLOCK_COMMIT]

/-- The mock device of 944 bytes over `example_tie_mem`. -/
def example_tie_dev : fram_dev_t :=
  mock_dev example_tie_mem 944

/-! ## Devices that may fail -/

/-- A device of `size` bytes holding `mem` whose mutex can be taken. Nothing
is assumed of the failure switch of its HAL, of its operation counter, of its
transfer limit or of its statistics: any HAL operation may fail. -/
structure DevAny (dev : fram_dev_t) (mem : Nat → Nat) (size : Nat) : Prop where
  mutex_free : dev.mutex = SemaphoreHandle_t.free
  size_eq : dev.hal.size_bytes = size
  size_lt : size < U32
  mem_eq : dev.hal.ctx.buffer = mem

/-- An initialised partition manager over a device that may fail, seen
through the writable partition `p`, whose byte `i` is `pmem i`. -/
structure PmAny (pm : fram_pm_t) (p : fram_partition_t) (pmem : Nat → Nat) : Prop where
  initialized : pm.initialized = true
  writable : p.flags &&& FRAM_PART_FLAG_READONLY = 0
  device : ∃ mem size, DevAny pm.dev mem size ∧ p.offset + p.size ≤ size ∧
    ∀ i, i < p.size → mem (p.offset + i) = pmem i

/-- The partition manager after `fram_hal_mock_set_fail_after(hal, operations)`
on the HAL of its device. -/
def pm_set_fail_after (pm : fram_pm_t) (operations : Nat) : fram_pm_t :=
  { pm with dev := { pm.dev with hal := fram_hal_mock_set_fail_after pm.dev.hal operations } }

/-- The bytes of the partition `p` on the media of `pm`: byte `i` of the
partition is the byte `p.offset + i` of the backing buffer. -/
def pm_media (pm : fram_pm_t) (p : fram_partition_t) : Nat → Nat :=
  fun i => pm.dev.hal.ctx.buffer (p.offset + i)

/-- The content `m` agrees with `pmem` outside the region `[so, so + es)` and
its byte at `c` is zero. -/
def RegionCleared (pmem m : Nat → Nat) (so es c : Nat) : Prop :=
  (∀ a, a < so ∨ so + es ≤ a → m a = pmem a) ∧ m c = 0

/-- The content `m` is `pmem`, or it agrees with `pmem` outside the region
`[so, so + es)` and its byte at `c` is zero. -/
def RegionKeep (pmem m : Nat → Nat) (so es c : Nat) : Prop :=
  m = pmem ∨ RegionCleared pmem m so es c

/-- The view of the slots of a ring that is not full after `n` appends: slot
`s < n` holds the record of sequence number `s`, the other slots hold none. -/
def ring_prefix_view (n : Nat) (s : Nat) : Option Nat :=
  if s < n then some (s % U32) else none

/-- The partition manager over a new mock HAL and device created on the
backing buffer of `pm`, as after a restart: `fram_hal_mock_create` with
`size_bytes = buffer_len = size`, then `fram_dev_init`. -/
def pm_remount (pm : fram_pm_t) (size : Nat) : fram_pm_t :=
  { pm with dev := mock_dev pm.dev.hal.ctx.buffer size }

/-- A mock device of `size` bytes holding `mem` whose failure switch is armed:
it has counted `c` operations, fails from the operation that makes the count
reach `f`, and transfers a whole request in one HAL operation. -/
structure DevArmed (dev : fram_dev_t) (mem : Nat → Nat) (size c f : Nat) : Prop where
  mutex_free : dev.mutex = SemaphoreHandle_t.free
  fail_on : dev.hal.ctx.fail_enabled = true
  size_eq : dev.hal.size_bytes = size
  size_lt : size < U32
  mem_eq : dev.hal.ctx.buffer = mem
  count : dev.hal.ctx.op_count = c
  after : dev.hal.ctx.fail_after = f
  single : dev.hal.max_transfer = size

/-- An initialised partition manager over an armed mock device, seen through
the writable partition `p`, whose byte `i` is `pmem i`. -/
structure PmArmed (pm : fram_pm_t) (p : fram_partition_t) (pmem : Nat → Nat) (c f : Nat) :
    Prop where
  initialized : pm.initialized = true
  writable : p.flags &&& FRAM_PART_FLAG_READONLY = 0
  device : ∃ mem size, DevArmed pm.dev mem size c f ∧ p.offset + p.size ≤ size ∧
    ∀ i, i < p.size → mem (p.offset + i) = pmem i

/-- The view of `n` slots that hold the records of indices `lo ≤ i < hi` (at
most `n` of them), record `i` in slot `i % n` with version `(i + 1) % 2^32`:
the candidate for slot `s` is the largest index below `hi` stored in it. -/
def vslot_window_view (lo hi n : Nat) (s : Nat) : Option Nat :=
  if hi ≤ s then none
  else if hi - 1 - (hi - 1 - s) % n < lo then none
  else some ((hi - 1 - (hi - 1 - s) % n + 1) % U32)

/-! ### A failed append on the example ring -/

/-- Ninety-nine appends on the example ring (capacity 99), each payload the
byte of its index and each timer value the index: the ring is full. -/
def example_ring_full : List (List Nat × Nat) :=
  (List.range 99).map (fun i => ([i], i))

/-- The example partition manager after the appends `entries`, on a mock
created anew over the same buffer and armed with
`fram_hal_mock_set_fail_after(hal, 2)`: its second operation fails. -/
def example_ring_armed (entries : List (List Nat × Nat)) : fram_pm_t :=
  pm_set_fail_after (pm_remount (example_ring_run entries).2.2 32768) 2

/-- The append of the payload `[7]` at time 100 on the armed mock. -/
def example_ring_failed (entries : List (List Nat × Nat)) : esp_err_t × fram_ring_t × fram_pm_t :=
  fram_ring_append (example_ring_run entries).2.1 (example_ring_armed entries) [7] 100

/-- The call of `fram_ring_init` after a restart on the media that the failed
append left. -/
def example_ring_reinit (entries : List (List Nat × Nat)) : esp_err_t × fram_ring_t × fram_pm_t :=
  fram_ring_init example_K example_ring0
    (pm_remount (example_ring_failed entries).2.2 32768) example_ring_cfg

/-! ### A failed save on the example slot store -/

/-- The example partition manager after the saves `entries`, on a mock
created anew over the same buffer and armed with
`fram_hal_mock_set_fail_after(hal, 2)`: its second operation fails. -/
def example_vslot_armed (cfg : fram_vslot_config_t) (entries : List (List Nat × Nat)) :
    fram_pm_t :=
  pm_set_fail_after (pm_remount (example_vslot_run cfg entries).2.2 32768) 2

/-- The save of the payload `[7]` at time 100 on the armed mock. -/
def example_vslot_failed (cfg : fram_vslot_config_t) (entries : List (List Nat × Nat)) :
    esp_err_t × fram_vslot_t × fram_pm_t :=
  fram_vslot_save (example_vslot_run cfg entries).2.1 (example_vslot_armed cfg entries) [7] 100

/-- The partition manager after a restart on the media that the failed save
left. -/
def example_vslot_restart (cfg : fram_vslot_config_t) (entries : List (List Nat × Nat)) :
    fram_pm_t :=
  pm_remount (example_vslot_failed cfg entries).2.2 32768

/-- The call of `fram_vslot_init` after the restart. -/
def example_vslot_reinit (cfg : fram_vslot_config_t) (entries : List (List Nat × Nat)) :
    esp_err_t × fram_vslot_t × fram_pm_t :=
  fram_vslot_init example_K example_vslot0 (example_vslot_restart cfg entries) cfg

/-! ## Key/value store: the records a scan accepts -/

/-- One iteration of the loops of `fram_kvs_scan` and `fram_kvs_find_end` at
the offset `off`, read off the partition bytes, where no 32-bit sum wraps
(partitions of at most `2^32 - 65572` bytes): the header of the record the
iteration accepts, or `none` when the loop is left (no room for a header, a
header that is not valid, a record that does not fit, a commit byte that is
not set, or a checksum that does not match). -/
def kvs_accept (K : Kconfig) (kvs : fram_kvs_t) (p : fram_partition_t) (pmem : Nat → Nat)
    (off : Nat) : Option fram_kvs_header_t :=
  if off + KVS_HEADER_SIZE + 1 ≤ p.size then
    let hdr := fram_kvs_header_of_bytes (mem_read pmem off KVS_HEADER_SIZE)
    if !fram_kvs_header_valid K kvs hdr then none
    else if off + (KVS_HEADER_SIZE + hdr.key_len + hdr.value_len + 1) > p.size then none
    else if pmem (off + KVS_HEADER_SIZE + hdr.key_len + hdr.value_len) ≠ FRAM_KVS_COMMIT then none
    else if fram_crc32_le (fram_crc32_le (fram_crc32_le 0 hdr.head_bytes)
        (mem_read pmem (off + KVS_HEADER_SIZE) hdr.key_len))
        (mem_read pmem (off + KVS_HEADER_SIZE + hdr.key_len) hdr.value_len) ≠ hdr.crc32 then none
    else some hdr
  else none

/-- The state of `fram_kvs_scan` after the record with header `hdr` at `off`
has been accepted: the record becomes the last match when its key is the key
looked for. -/
def kvs_scan_upd (pmem : Nat → Nat) (key : List Nat) (st : kvs_scan_t) (off : Nat)
    (hdr : fram_kvs_header_t) : kvs_scan_t :=
  if hdr.key_len = key.length ∧ mem_read pmem (off + KVS_HEADER_SIZE) hdr.key_len = key then
    { found := true
      deleted := decide (hdr.flags &&& FRAM_KVS_FLAG_DELETED ≠ 0)
      last_hdr := hdr
      last_offset := off }
  else st

/-- The value of `next_seq` in `fram_kvs_find_end` after a record with the
sequence number `seq` has been accepted. -/
def kvs_seq_upd (next_seq seq : Nat) : Nat :=
  if seq ≥ next_seq then (seq + 1) % U32 else next_seq

/-- The loop of `fram_kvs_find_end` from the offset `off` with the sequence
number `next_seq`, read off the partition bytes: the offset where it stops and
the sequence number it then holds. -/
def kvs_walk (K : Kconfig) (kvs : fram_kvs_t) (p : fram_partition_t) (pmem : Nat → Nat) :
    Nat → Nat → Nat → Nat × Nat
  | 0, off, next_seq => (off, next_seq)
  | fuel + 1, off, next_seq =>
      match kvs_accept K kvs p pmem off with
      | none => (off, next_seq)
      | some hdr =>
          kvs_walk K kvs p pmem fuel (off + (20 + hdr.key_len + hdr.value_len + 1))
            (kvs_seq_upd next_seq hdr.seq)

/-- The loop of `fram_kvs_scan` for the key `key` from the offset `off` with
the state `st`, read off the partition bytes: the state when it stops. -/
def kvs_walk_scan (K : Kconfig) (kvs : fram_kvs_t) (p : fram_partition_t) (pmem : Nat → Nat)
    (key : List Nat) : Nat → Nat → kvs_scan_t → kvs_scan_t
  | 0, _, st => st
  | fuel + 1, off, st =>
      match kvs_accept K kvs p pmem off with
      | none => st
      | some hdr =>
          kvs_walk_scan K kvs p pmem key fuel (off + (20 + hdr.key_len + hdr.value_len + 1))
            (kvs_scan_upd pmem key st off hdr)

/-- The partition holds from offset `off` on the committed records of the
calls `ops`, one after the other, numbered from `seq` on. -/
def KLogSeq (pmem : Nat → Nat) (magic : Nat) : Nat → Nat → List kvs_op → Prop
  | _, _, [] => True
  | off, seq, op :: rest =>
      KRec pmem off magic seq op ∧ KLogSeq pmem magic (off + op.size) (seq + 1) rest

/-- The store and its partition after `fram_kvs_init` on an erased partition
and the successful calls `ops`: the store is ready, `next_seq` counts the
calls, and the record of call `i` carries the sequence number `i`. -/
structure KvsExact (K : Kconfig) (kvs : fram_kvs_t) (p : fram_partition_t) (pmem : Nat → Nat)
    (ops : List kvs_op) : Prop where
  after : KvsAfter K kvs p pmem ops
  ready : kvs.ready = true
  seq : kvs.next_seq = ops.length
  log : KLogSeq pmem kvs.magic 0 0 ops

/-- The results of `fram_kvs_get` (return value, buffer, `*len`) for a key
bound to `r` in the store, with the caller's buffer `buf` and `*len = cap`, in
the words of the specification: not found without a live record, the needed
length when the buffer is too small, the value otherwise. -/
def kvs_get_spec (r : Option (List Nat)) (buf : List Nat) (cap : Nat) :
    esp_err_t × List Nat × Nat :=
  match r with
  | none => (ESP_ERR_NOT_FOUND, buf, cap)
  | some v =>
      if cap < v.length then (ESP_ERR_INVALID_SIZE, buf, v.length)
      else (ESP_OK, v ++ buf.drop v.length, v.length)

/-! ### A failed call on the example stores -/

/-- The partition manager after `fram_kvs_init` and the calls `ops` on `pm`,
on a mock of `size` bytes created anew over the same buffer and armed with
`fram_hal_mock_set_fail_after(hal, f)`: its operation number `f` fails. -/
def example_kvs_armed (pm : fram_pm_t) (size : Nat) (ops : List kvs_op) (f : Nat) : fram_pm_t :=
  pm_set_fail_after (pm_remount (example_kvs_run pm ops).2.2 size) f

/-- The call `op` on the armed mock. -/
def example_kvs_failed (pm : fram_pm_t) (size : Nat) (ops : List kvs_op) (f : Nat)
    (op : kvs_op) : esp_err_t × fram_kvs_t × fram_pm_t :=
  fram_kvs_apply example_K (example_kvs_run pm ops).2.1 (example_kvs_armed pm size ops f) op

/-- The partition manager after a restart on the media that the failed call
left. -/
def example_kvs_restart (pm : fram_pm_t) (size : Nat) (ops : List kvs_op) (f : Nat)
    (op : kvs_op) : fram_pm_t :=
  pm_remount (example_kvs_failed pm size ops f op).2.2 size

/-- The call of `fram_kvs_init` after the restart. -/
def example_kvs_reinit (pm : fram_pm_t) (size : Nat) (ops : List kvs_op) (f : Nat)
    (op : kvs_op) : esp_err_t × fram_kvs_t × fram_pm_t :=
  fram_kvs_init example_K (example_kvs_restart pm size ops f op) example_kvs_cfg

/-- The call `set("a", "one", 3)` repeated 171798690 times: records of 25
bytes that end at offset `2^32 - 46`. -/
def example_big_ops2 : List kvs_op :=
  List.replicate 171798690 (kvs_op.set [0x61] [0x6F, 0x6E, 0x65])

/-- The call `set("a", value, 28)` with 28 bytes `'o'`: a record of 50 bytes. -/
def example_big_set : kvs_op :=
  kvs_op.set [0x61] (List.replicate 28 0x6F)

/-! ### A set on recovered media -/

/-- The call of `fram_kvs_init` with the configuration of the tests on the
partition manager `pm`. -/
def example_kvs_recover (pm : fram_pm_t) : esp_err_t × fram_kvs_t × fram_pm_t :=
  fram_kvs_init example_K pm example_kvs_cfg

/-- The call `set("b", "new", 3)` on the store that `fram_kvs_init` found on
`pm`. -/
def example_kvs_set_new (pm : fram_pm_t) : esp_err_t × fram_kvs_t × fram_pm_t :=
  fram_kvs_set example_K (example_kvs_recover pm).2.1 (example_kvs_recover pm).2.2
    [0x62] [0x6E, 0x65, 0x77]

/-- The calls `set("a", "one", 3)`, `set("b", "two", 3)`, `set("b", "old", 3)`:
three records of 25 bytes. -/
def example_stale_ops : List kvs_op :=
  [kvs_op.set [0x61] [0x6F, 0x6E, 0x65], kvs_op.set [0x62] [0x74, 0x77, 0x6F],
    kvs_op.set [0x62] [0x6F, 0x6C, 0x64]]

/-- The stored `crc32` field of the second record after the calls
`example_stale_ops`, as read in the backing buffer. -/
def example_stale_stored_crc : Nat :=
  le_val (mem_read (example_kvs_run example_pm example_stale_ops).2.2.dev.hal.ctx.buffer
    (example_kvs_part.offset + (25 + 16)) 4)

/-- The partition manager after the calls `example_stale_ops`, with the stored
`crc32` field of the second record complemented through the backing buffer, as
`fram_kvs_crc_stop_and_len` does (`crc ^= 0xFFFFFFFF`). -/
def example_stale_pm : fram_pm_t :=
  kvs_poke_crc (example_kvs_run example_pm example_stale_ops).2.2 example_kvs_part 25
    (example_stale_stored_crc ^^^ 0xFFFFFFFF)

/-! ### A flipped byte in the most recent record -/

/-- One byte of the partition complemented through the mock's backing buffer,
the way `fram_kvs_crc_stop_and_len` (`test_fram.c`) reaches the media behind
the store: `buffer[p.offset + offset] ^= 0xFF`. -/
def kvs_flip_byte (pm : fram_pm_t) (p : fram_partition_t) (offset : Nat) : fram_pm_t :=
  let b := pm.dev.hal.ctx.buffer (p.offset + offset)
  { pm with dev := mock_poke pm.dev (p.offset + offset) (b ^^^ 0xFF) }

/-- A value of 128 bytes: four chosen bytes, 123 times `o`, and `0xA5` as the
last byte. -/
def example_crafted_value : List Nat :=
  [0xED, 0x88, 0x67, 0xAF] ++ (List.replicate 123 0x6F ++ [0xA5])

/-- The call `set("a", example_crafted_value, 128)`. -/
def example_crafted_set : kvs_op :=
  kvs_op.set [0x61] example_crafted_value

/-- The call `set("a", v, 127)` with `v` the first 127 bytes of
`example_crafted_value`. -/
def example_crafted_short : kvs_op :=
  kvs_op.set [0x61] ([0xED, 0x88, 0x67, 0xAF] ++ List.replicate 123 0x6F)

/-- The example partition after `fram_kvs_init` and `example_crafted_set`, with
byte 10 of the record (the low byte of `value_len`, `0x80`) complemented. -/
def example_crafted_pm : fram_pm_t :=
  kvs_flip_byte (example_kvs_run example_pm [example_crafted_set]).2.2 example_kvs_part 10

/-- The example partition after `fram_kvs_init`, `set("a", "one", 3)` and
`set("b", "two", 3)`, with byte `j` of the second record complemented. -/
def example_flip_pm (j : Nat) : fram_pm_t :=
  kvs_flip_byte (example_kvs_run example_pm example_kvs_ops).2.2 example_kvs_part (25 + j)

/-! ## Sequences of device calls and the health of the device -/

/-- A call of `fram_dev_read` or of `fram_dev_write` with a non-`NULL` buffer. -/
inductive dev_call where
  | read (offset len : Nat)
  | write (offset : Nat) (data : List Nat)

/-- The offset argument of a call. -/
def dev_call.offset : dev_call → Nat
  | dev_call.read offset _ => offset
  | dev_call.write offset _ => offset

/-- The `len` argument of a call. -/
def dev_call.len : dev_call → Nat
  | dev_call.read _ len => len
  | dev_call.write _ data => data.length

/-- One call on a device together with what surrounds it: `mutex` is the state
of the device mutex during the call (`held` when another task keeps it for
the whole timeout) and `arm` is the argument of a
`fram_hal_mock_set_fail_after` made on the HAL just before the call, if there
is one. -/
structure dev_step where
  mutex : SemaphoreHandle_t
  arm : Option Nat
  call : dev_call

/-- The device as a call of the step finds it. -/
def dev_step_enter (dev : fram_dev_t) (s : dev_step) : fram_dev_t :=
  match s.arm with
  | none => { dev with mutex := s.mutex }
  | some n => { dev with mutex := s.mutex, hal := fram_hal_mock_set_fail_after dev.hal n }

/-- The call of a step: its result and the device afterwards. -/
def dev_step_apply (dev : fram_dev_t) (s : dev_step) : esp_err_t × fram_dev_t :=
  match s.call with
  | dev_call.read offset len =>
      ((fram_dev_read (dev_step_enter dev s) offset len).1,
        (fram_dev_read (dev_step_enter dev s) offset len).2.2)
  | dev_call.write offset data => fram_dev_write (dev_step_enter dev s) offset data

/-- The device after a sequence of calls. -/
def dev_run (dev : fram_dev_t) : List dev_step → fram_dev_t
  | [] => dev
  | s :: rest => dev_run (dev_step_apply dev s).2 rest

/-- The call of the step passes the range check of `fram_dev_read` /
`fram_dev_write` with `len ≥ 1` and is moved in one HAL transfer
(`len ≤ max_transfer`, or no transfer limit). -/
def dev_step_single (dev : fram_dev_t) (s : dev_step) : Prop :=
  s.call.len ≠ 0 ∧ dev.hal.size_bytes ≠ 0 ∧ s.call.offset ≤ dev.hal.size_bytes ∧
  s.call.len ≤ dev.hal.size_bytes ∧ s.call.offset ≤ dev.hal.size_bytes - s.call.len ∧
  (dev.hal.max_transfer = 0 ∨ s.call.len ≤ dev.hal.max_transfer)

/-- Every call of the sequence passes the range check, is moved in one HAL
transfer, and does not return `ESP_OK`. -/
def DevFailRun : fram_dev_t → List dev_step → Prop
  | _, [] => True
  | dev, s :: rest =>
      dev_step_single dev s ∧ (dev_step_apply dev s).1 ≠ ESP_OK ∧
        DevFailRun (dev_step_apply dev s).2 rest

/-- What a call can do to the health fields of a device: leave them alone (no
transfer was tried), reset the consecutive-error count (every HAL transfer
succeeded), or count one error, either on top of the count (the lock or the
first transfer failed) or from zero (a transfer failed after a successful
one); an error that brings the count to the threshold clears `healthy`. -/
def DevOutcome (d d1 : fram_dev_t) : Prop :=
  d1.error_threshold = d.error_threshold ∧
  ((d1.healthy = d.healthy ∧ d1.consecutive_errors = d.consecutive_errors) ∨
   (d1.healthy = d.healthy ∧ d1.consecutive_errors = 0) ∨
   (d1.consecutive_errors = (d.consecutive_errors + 1) % U32 ∧
      d1.healthy = if d.error_threshold ≤ d1.consecutive_errors then false else d.healthy) ∨
   (d1.consecutive_errors = 1 ∧
      d1.healthy = if d.error_threshold ≤ d1.consecutive_errors then false else d.healthy))

/-- The device of the tests with `error_threshold = 1`: `fram_dev_init` over
the mock HAL of 32 KiB with `cfg.error_threshold = 1` and
`cfg.mutex_timeout_ms = 1000`. -/
def example_dev_one : fram_dev_t :=
  (fram_dev_init example_K (mock_dev (fun _ => 0xFF) 32768).hal 1 1000).2

/-- A step whose call is `fram_dev_read(dev, 40000, buf, 1)`: the offset lies
beyond the 32 KiB of the example device. -/
def example_step_beyond : dev_step :=
  { mutex := SemaphoreHandle_t.free, arm := none, call := dev_call.read 40000 1 }

/-- A step whose call is `fram_dev_read(dev, 0, buf, 4)` on a mock armed with
`fram_hal_mock_set_fail_after(hal, 0)`: the transfer fails. -/
def example_step_fail : dev_step :=
  { mutex := SemaphoreHandle_t.free, arm := some 0, call := dev_call.read 0 4 }

/-- A step whose call is `fram_dev_write(dev, 0, "abcd", 4)` on a working
mock. -/
def example_step_ok : dev_step :=
  { mutex := SemaphoreHandle_t.free, arm := some 4294967295,
    call := dev_call.write 0 [0x61, 0x62, 0x63, 0x64] }

/-! ## Slot validation as a function of the partition content -/

/-- What `fram_ring_validate_slot` finds in a slot of the writable partition
`p` of a working device whose partition bytes are `pmem`: the same checks in
the same order, each read replaced by the range check of `fram_pm_read` and
the bytes of the partition. -/
def ring_slot_check (ring : fram_ring_t) (p : fram_partition_t) (pmem : Nat → Nat)
    (slot : Nat) : esp_err_t × Option fram_ring_header_t :=
  let co := fram_ring_commit_offset ring slot
  let so := fram_ring_slot_offset ring slot
  let po := (fram_ring_slot_offset ring slot + RING_HEADER_SIZE) % U32
  let hdr := fram_ring_header_of_bytes (mem_read pmem so RING_HEADER_SIZE)
  if ¬ co + 1 ≤ p.size ∨ pmem co ≠ FRAM_RING_COMMIT then (ESP_ERR_NOT_FOUND, none)
  else if ¬ so + RING_HEADER_SIZE ≤ p.size then (ESP_ERR_INVALID_SIZE, none)
  else if hdr.magic ≠ ring.magic then (ESP_ERR_NOT_FOUND, none)
  else if hdr.len > ring.max_payload then (ESP_ERR_INVALID_SIZE, none)
  else if hdr.len > 0 ∧ ¬ po + hdr.len ≤ p.size then (ESP_ERR_INVALID_SIZE, none)
  else if (if hdr.len > 0 then
      fram_crc32_le (fram_crc32_le 0 hdr.head_bytes) (mem_read pmem po hdr.len)
      else fram_crc32_le 0 hdr.head_bytes) ≠ hdr.crc32 then (ESP_ERR_INVALID_CRC, none)
  else (ESP_OK, some hdr)

/-- The sequence number of the record `fram_ring_validate_slot` accepts in a
slot of a working partition, `none` for a slot that does not validate. -/
def ring_slot_seq (ring : fram_ring_t) (p : fram_partition_t) (pmem : Nat → Nat)
    (slot : Nat) : Option Nat :=
  match ring_slot_check ring p pmem slot with
  | (ESP_OK, some hdr) => some hdr.seq
  | _ => none

/-- What `fram_vslot_validate_slot` finds in a slot of the writable partition
`p` of a working device whose partition bytes are `pmem`. -/
def vslot_slot_check (vs : fram_vslot_t) (p : fram_partition_t) (pmem : Nat → Nat)
    (slot : Nat) : esp_err_t × Option fram_vslot_header_t :=
  let co := fram_vslot_commit_offset vs slot
  let so := fram_vslot_slot_offset vs slot
  let po := (fram_vslot_slot_offset vs slot + VSLOT_HEADER_SIZE) % U32
  let hdr := fram_vslot_header_of_bytes (mem_read pmem so VSLOT_HEADER_SIZE)
  if ¬ co + 1 ≤ p.size ∨ pmem co ≠ FRAM_VSLOT_COMMIT then (ESP_ERR_NOT_FOUND, none)
  else if ¬ so + VSLOT_HEADER_SIZE ≤ p.size then (ESP_ERR_INVALID_SIZE, none)
  else if hdr.magic ≠ vs.magic then (ESP_ERR_NOT_FOUND, none)
  else if hdr.len > vs.max_payload then (ESP_ERR_INVALID_SIZE, none)
  else if hdr.len > 0 ∧ ¬ po + hdr.len ≤ p.size then (ESP_ERR_INVALID_SIZE, none)
  else if (if hdr.len > 0 then
      fram_crc32_le (fram_crc32_le 0 hdr.head_bytes) (mem_read pmem po hdr.len)
      else fram_crc32_le 0 hdr.head_bytes) ≠ hdr.crc32 then (ESP_ERR_INVALID_CRC, none)
  else (ESP_OK, some hdr)

/-! ## The buffer contracts of peek and load -/

/-- The buffer contract of a ring peek whose target record has the header
`hdr` and the payload bytes `data`: `res` is what the peek returns for the
arguments `out` with `*len = cap` on entry, and `pmv` is the partition manager
the validation of the slot leaves. A buffer shorter than the record gives
`ESP_ERR_INVALID_SIZE` with `*len` set and the buffer untouched; a `NULL`
buffer gives `ESP_OK` with `*len` set; a buffer that is long enough gives
`ESP_OK`, the payload bytes at the start of the buffer and `*len` set. -/
def RingPeekContract (res : esp_err_t × ring_peek_t × fram_pm_t) (data : List Nat)
    (hdr : fram_ring_header_t) (out : ring_peek_t) (cap : Nat) (pmv : fram_pm_t) : Prop :=
  (∀ buf, out.payload = some buf → cap < hdr.len →
    res = (ESP_ERR_INVALID_SIZE, { out with len := some hdr.len }, pmv)) ∧
  (out.payload = none →
    res = (ESP_OK, { out with len := some hdr.len
                              seq := if out.seq.isSome then some hdr.seq else none
                              ts_us := if out.ts_us.isSome then some hdr.ts_us else none },
            pmv)) ∧
  (∀ buf, out.payload = some buf → hdr.len ≤ cap →
    ∃ pm1, res = (ESP_OK,
      { payload := some (data ++ buf.drop hdr.len)
        len := some hdr.len
        seq := if out.seq.isSome then some hdr.seq else none
        ts_us := if out.ts_us.isSome then some hdr.ts_us else none }, pm1))

/-- The slot `fram_ring_peek_newest` reads:
`(head_slot + capacity - 1) % capacity` in 32-bit arithmetic. -/
def ring_newest_slot (ring : fram_ring_t) : Nat :=
  (((ring.head_slot + ring.capacity) % U32 + U32 - 1) % U32) % ring.capacity

/-! ## Ring iteration (`fram_ring_iterate`) -/

/-- The callback type `fram_ring_iter_fn`, called as
`cb(seq, ts_us, payload, len, ctx)`: the code it returns and what it makes of
the data behind `ctx`. -/
def fram_ring_iter_fn (σ : Type) : Type :=
  Nat → Nat → List Nat → Nat → σ → esp_err_t × σ

/-- The loop of `fram_ring_iterate` (`while (remaining > 0)`), by recursion on
`remaining`; `payload_buf` is the content of the local buffer, whose size is
`CONFIG_FRAM_RING_MAX_PAYLOAD`. The result is `err` at the end of the loop. -/
def fram_ring_iterate_loop {σ : Type} (K : Kconfig) (ring : fram_ring_t)
    (cb : fram_ring_iter_fn σ) :
    Nat → fram_pm_t → Nat → List Nat → σ → esp_err_t × σ × fram_pm_t
  | 0, pm, _, _, ctx => (ESP_OK, ctx, pm)
  | remaining + 1, pm, slot, payload_buf, ctx =>
      let r := fram_ring_read_slot_payload ring pm slot
        { payload := some payload_buf, len := some K.FRAM_RING_MAX_PAYLOAD, seq := some 0, ts_us := some 0 }
      if r.1 ≠ ESP_OK then (r.1, ctx, r.2.2)
      else
        let buf1 := r.2.1.payload.getD payload_buf
        let c := cb (r.2.1.seq.getD 0) (r.2.1.ts_us.getD 0) buf1 (r.2.1.len.getD 0) ctx
        if c.1 ≠ ESP_OK then (c.1, c.2, r.2.2)
        else
          fram_ring_iterate_loop K ring cb remaining r.2.2 (((slot + 1) % U32) % ring.capacity)
            buf1 c.2

/-- The function `fram_ring_iterate`; `cb` is `none` for a `NULL` callback and
`payload_buf` is the initial content of the local buffer. -/
def fram_ring_iterate {σ : Type} (K : Kconfig) (ring : fram_ring_t) (pm : fram_pm_t)
    (cb : Option (fram_ring_iter_fn σ)) (ctx : σ) (payload_buf : List Nat) :
    esp_err_t × σ × fram_pm_t :=
  match cb with
  | none => (ESP_ERR_INVALID_ARG, ctx, pm)
  | some f =>
    if !ring.ready ∨ ring.count = 0 then (ESP_OK, ctx, pm)
    else if fram_ring_lock ring ≠ ESP_OK then (fram_ring_lock ring, ctx, pm)
    else fram_ring_iterate_loop K ring f ring.count pm ring.tail_slot payload_buf ctx

/-- The records number `start`, `start + 1`, ... (`count` of them) of the
appends `es`, each with the sequence number and the time stamp the ring stores
for it. -/
def ring_records_from (es : List (List Nat × Nat)) : Nat → Nat → List (Nat × Nat × List Nat)
  | _, 0 => []
  | start, count + 1 =>
      (start % U32, (es.getD start ([], 0)).2 % U64, (es.getD start ([], 0)).1)
        :: ring_records_from es (start + 1) count

/-- The live log after the appends `es` on a ring of `capacity` slots: the
last `min n capacity` records, oldest first. -/
def ring_live_records (es : List (List Nat × Nat)) (capacity : Nat) :
    List (Nat × Nat × List Nat) :=
  ring_records_from es (es.length - min es.length capacity) (min es.length capacity)

/-- The iteration in the words of the specification: the callback is invoked
on the records in order, each with its seq, time stamp, payload bytes (at the
start of the buffer) and length; the first code other than `ESP_OK` ends the
iteration and is returned. -/
def ring_iterate_spec {σ : Type} (cb : fram_ring_iter_fn σ) :
    List (Nat × Nat × List Nat) → List Nat → σ → esp_err_t × σ
  | [], _, ctx => (ESP_OK, ctx)
  | r :: rest, buf, ctx =>
      let c := cb r.1 r.2.1 (r.2.2 ++ buf.drop r.2.2.length) r.2.2.length ctx
      if c.1 ≠ ESP_OK then c
      else ring_iterate_spec cb rest (r.2.2 ++ buf.drop r.2.2.length) c.2

/-- A callback that appends the seq, the payload bytes `payload[0 .. len)` and
the length of every call to a list, and returns for call number `k` (from 0)
the code `verdict k`. -/
def ring_iter_record (verdict : Nat → esp_err_t) :
    fram_ring_iter_fn (List (Nat × List Nat × Nat)) :=
  fun seq _ payload len calls => (verdict calls.length, calls ++ [(seq, payload.take len, len)])

/-- What a recording callback notes for a record. -/
def ring_call_of (r : Nat × Nat × List Nat) : Nat × List Nat × Nat :=
  (r.1, r.2.2, r.2.2.length)

/-! ## Recovery on the partition a run of appends left -/

/-- The call of `fram_ring_init` on the partition manager that the example run
of the appends `entries` left. -/
def example_ring_recover (entries : List (List Nat × Nat)) :
    esp_err_t × fram_ring_t × fram_pm_t :=
  fram_ring_init example_K example_ring0 (example_ring_run entries).2.2 example_ring_cfg

open esp_err_t

/-! ## The HAL transfers of the device layer -/

/-- The calls `dev->hal->read(dev->hal, addr, out, chunk)` that the chunk loop
of `fram_dev_read` issues, in order: the address and the length of each. -/
def fram_dev_read_loop_calls : Nat → fram_dev_t → Nat → Nat → Nat → List (Nat × Nat)
  | 0, _, _, _, _ => []
  | fuel + 1, dev, addr, remaining, max_transfer =>
      if remaining = 0 then []
      else
        let chunk := if remaining > max_transfer then max_transfer else remaining
        let r := fram_hal_mock_read dev.hal addr chunk
        if r.1 ≠ ESP_OK then [(addr, chunk)]
        else
          let dev1 := fram_dev_record_success
            { dev with hal := r.2.2, read_count := (dev.read_count + 1) % U32 }
          (addr, chunk) :: fram_dev_read_loop_calls fuel dev1 ((addr + chunk) % U32)
            (remaining - chunk) max_transfer

/-- The HAL read calls that `fram_dev_read` issues. -/
def fram_dev_read_calls (dev : fram_dev_t) (offset len : Nat) : List (Nat × Nat) :=
  if len = 0 then []
  else if dev.hal.size_bytes = 0 ∨ offset > dev.hal.size_bytes ∨ len > dev.hal.size_bytes
      ∨ offset > dev.hal.size_bytes - len then []
  else if fram_dev_lock dev ≠ ESP_OK then []
  else
    let max_transfer :=
      if dev.hal.max_transfer ≠ 0 then dev.hal.max_transfer else dev.hal.size_bytes
    fram_dev_read_loop_calls len dev offset len max_transfer

/-- The calls `dev->hal->write(dev->hal, addr, in, chunk)` that the chunk loop
of `fram_dev_write` issues, in order: the address and the bytes of each. -/
def fram_dev_write_loop_calls : Nat → fram_dev_t → Nat → List Nat → Nat →
    List (Nat × List Nat)
  | 0, _, _, _, _ => []
  | fuel + 1, dev, addr, data, max_transfer =>
      if data.length = 0 then []
      else
        let chunk := if data.length > max_transfer then max_transfer else data.length
        let r := fram_hal_mock_write dev.hal addr (data.take chunk)
        if r.1 ≠ ESP_OK then [(addr, data.take chunk)]
        else
          let dev1 := fram_dev_record_success
            { dev with hal := r.2, write_count := (dev.write_count + 1) % U32 }
          (addr, data.take chunk) :: fram_dev_write_loop_calls fuel dev1 ((addr + chunk) % U32)
            (data.drop chunk) max_transfer

/-- The HAL write calls that `fram_dev_write` issues. -/
def fram_dev_write_calls (dev : fram_dev_t) (offset : Nat) (data : List Nat) :
    List (Nat × List Nat) :=
  if data.length = 0 then []
  else if dev.hal.size_bytes = 0 ∨ offset > dev.hal.size_bytes
      ∨ data.length > dev.hal.size_bytes ∨ offset > dev.hal.size_bytes - data.length then []
  else if fram_dev_lock dev ≠ ESP_OK then []
  else
    let max_transfer :=
      if dev.hal.max_transfer ≠ 0 then dev.hal.max_transfer else dev.hal.size_bytes
    fram_dev_write_loop_calls data.length dev offset data max_transfer

/-- Two device states that differ at most in the `healthy` flag. -/
def DevSameButHealthy (d1 d2 : fram_dev_t) : Prop :=
  d1.hal = d2.hal ∧ d1.mutex = d2.mutex ∧ d1.read_count = d2.read_count ∧
  d1.write_count = d2.write_count ∧ d1.error_count = d2.error_count ∧
  d1.consecutive_errors = d2.consecutive_errors ∧ d1.error_threshold = d2.error_threshold ∧
  d1.mutex_timeout_ms = d2.mutex_timeout_ms

/-- The device state with the `healthy` flag set. -/
def dev_set_healthy (dev : fram_dev_t) : fram_dev_t :=
  { dev with healthy := true }

/-- The transfers of at most `m` bytes each, at consecutive addresses from
`addr` on, that together carry exactly the bytes `data`. -/
def WriteChunks (m : Nat) : Nat → List Nat → List (Nat × List Nat) → Prop
  | _, data, [] => data = []
  | addr, data, c :: rest =>
      c.1 = addr ∧ 1 ≤ c.2.length ∧ c.2.length ≤ m ∧ c.2 = data.take c.2.length ∧
      WriteChunks m (addr + c.2.length) (data.drop c.2.length) rest

/-- The transfers of at most `m` bytes each, at consecutive addresses from
`addr` on, that together cover exactly `len` bytes. -/
def ReadChunks (m : Nat) : Nat → Nat → List (Nat × Nat) → Prop
  | _, len, [] => len = 0
  | addr, len, c :: rest =>
      c.1 = addr ∧ 1 ≤ c.2 ∧ c.2 ≤ m ∧ c.2 ≤ len ∧ ReadChunks m (addr + c.2) (len - c.2) rest

/-- A device at the point where its write counter is about to wrap. -/
def example_dev_wrap_count : fram_dev_t :=
  { mock_dev (fun _ => 0xFF) 32768 with write_count := 4294967295, read_count := 4294967295 }

open esp_err_t

/-! ## Runs of ring operations -/

/-- A call that changes a ring: `fram_ring_append(ring, payload, len)` at the
timer value `now`, or `fram_ring_clear(ring)`. -/
inductive ring_op where
  | append (payload : List Nat) (now : Nat)
  | clear

/-- The call `op` on a ring and a partition manager. -/
def ring_op_apply (ring : fram_ring_t) (pm : fram_pm_t) :
    ring_op → esp_err_t × fram_ring_t × fram_pm_t
  | ring_op.append payload now => fram_ring_append ring pm payload now
  | ring_op.clear => fram_ring_clear ring pm

/-- The ring after a sequence of calls, each made with the partition manager
(and so the device state, working or failing) given with it; the result of a
call is not looked at, so failed calls are part of the run. -/
def ring_run_ops : fram_ring_t → List (fram_pm_t × ring_op) → fram_ring_t
  | ring, [] => ring
  | ring, s :: rest => ring_run_ops (ring_op_apply ring s.1 s.2).2.1 rest

/-- The index invariant of a ring on the partition `p`. -/
structure RingIndexInv (ring : fram_ring_t) (p : fram_partition_t) : Prop where
  part : ring.part = some p
  head : ring.head_slot < ring.capacity
  tail : ring.tail_slot < ring.capacity
  count : ring.count ≤ ring.capacity
  tail_eq : ring.tail_slot = (ring.head_slot + ring.capacity - ring.count) % ring.capacity
  slots : ∀ s, s < ring.capacity → (s + 1) * ring.entry_size ≤ p.size
  entry : ring.entry_size = RING_HEADER_SIZE + ring.max_payload + 1
  small : p.size < U32

open esp_err_t

/-! ## Slot validation of the versioned slots as a function of the content -/

/-- The version of the record `fram_vslot_validate_slot` accepts in a slot of
a working partition, `none` for a slot that does not validate. -/
def vslot_slot_version (vs : fram_vslot_t) (p : fram_partition_t) (pmem : Nat → Nat)
    (slot : Nat) : Option Nat :=
  match vslot_slot_check vs p pmem slot with
  | (ESP_OK, some hdr) => some hdr.version
  | _ => none

/-- The header stored in a slot, read off the partition bytes. -/
def spec_vslot_header (vs : fram_vslot_t) (pmem : Nat → Nat) (slot : Nat) :
    fram_vslot_header_t :=
  fram_vslot_header_of_bytes (mem_read pmem (slot * vs.slot_size) VSLOT_HEADER_SIZE)

/-- A slot validates, in the words of the specification: the commit byte is
`0xA5`, the magic matches, `len ≤ max_payload`, and the CRC over the header
(up to the CRC field) and the payload matches. -/
def spec_vslot_valid (vs : fram_vslot_t) (pmem : Nat → Nat) (slot : Nat) : Bool :=
  decide (pmem (slot * vs.slot_size + VSLOT_HEADER_SIZE + vs.max_payload) = 0xA5 ∧
    (spec_vslot_header vs pmem slot).magic = vs.magic ∧
    (spec_vslot_header vs pmem slot).len ≤ vs.max_payload ∧
    fram_crc32_le 0 ((spec_vslot_header vs pmem slot).head_bytes ++
        mem_read pmem (slot * vs.slot_size + VSLOT_HEADER_SIZE)
          (spec_vslot_header vs pmem slot).len)
      = (spec_vslot_header vs pmem slot).crc32)

open esp_err_t

/-! ## The target and the sequence number of a superblock write, in the words
of the specification -/

/-- The copy a superblock write targets, in the words of the specification:
copy A (index 0) when neither copy is valid, when only B is valid, or when both
are valid and `A.seq ≤ B.seq`; copy B (index 1) otherwise. -/
def spec_superblock_target (a_valid b_valid : Bool) (a b : fram_superblock_t) : Nat :=
  if (a_valid = false ∧ b_valid = false) ∨ (a_valid = false ∧ b_valid = true)
      ∨ (a_valid = true ∧ b_valid = true ∧ a.seq ≤ b.seq) then 0 else 1

/-- The largest sequence number among the valid copies (0 when there is none). -/
def spec_superblock_max_seq (a_valid b_valid : Bool) (a b : fram_superblock_t) : Nat :=
  if a_valid = true ∧ b_valid = true then max a.seq b.seq
  else if a_valid = true then a.seq
  else if b_valid = true then b.seq
  else 0

/-- The media after the two device writes of a successful
`fram_superblock_write` that targets the copy at `off` with the record
`temp`. -/
def superblock_media_after (mem : Nat → Nat) (off : Nat) (temp : fram_superblock_t) :
    Nat → Nat :=
  mem_write (mem_write mem off temp.to_bytes) (off + SUPERBLOCK_COMMIT_OFFSET)
    [FRAM_SUPERBLOCK_COMMIT]

open esp_err_t

/-! ## Partition isolation -/

/-- The partition manager `pm1` has the table, the state and the device size
of `pm`, and every device byte outside the range `[p.offset, p.offset + p.size)`
of the partition `p` is in `pm1` what it is in `pm`. -/
def PartIsolated (p : fram_partition_t) (pm pm1 : fram_pm_t) : Prop :=
  pm1.partitions = pm.partitions ∧ pm1.partition_count = pm.partition_count ∧
  pm1.initialized = pm.initialized ∧ pm1.dev.hal.size_bytes = pm.dev.hal.size_bytes ∧
  ∀ a, a < p.offset ∨ p.offset + p.size ≤ a →
    pm1.dev.hal.ctx.buffer a = pm.dev.hal.ctx.buffer a

/-- The step from `pm` to `pm1` keeps the table, the state and the device
size, and, when `part` is a partition that lies inside a device of less than
2^32 bytes, every device byte outside that partition. -/
def PmKeeps (part : Option fram_partition_t) (pm pm1 : fram_pm_t) : Prop :=
  pm1.partitions = pm.partitions ∧ pm1.partition_count = pm.partition_count ∧
  pm1.initialized = pm.initialized ∧ pm1.dev.hal.size_bytes = pm.dev.hal.size_bytes ∧
  ∀ p, part = some p → p.offset + p.size ≤ pm.dev.hal.size_bytes →
    pm.dev.hal.size_bytes < U32 →
    ∀ a, a < p.offset ∨ p.offset + p.size ≤ a →
      pm1.dev.hal.ctx.buffer a = pm.dev.hal.ctx.buffer a

open esp_err_t

/-! ## Key/value store: the record a scan hands back -/

/-- The last match of the walk of `fram_kvs_scan` is a record with a valid
header that lies inside the partition. -/
def KvsScanFits (K : Kconfig) (kvs : fram_kvs_t) (p : fram_partition_t) (st : kvs_scan_t) :
    Prop :=
  st.found = true → fram_kvs_header_valid K kvs st.last_hdr = true ∧
    st.last_offset + (20 + st.last_hdr.key_len + st.last_hdr.value_len + 1) ≤ p.size

/-! ## Key/value store: the reads the scans issue -/

/-- The reads `(offset, len)` the value loop of `fram_kvs_compute_crc` issues
through `fram_pm_read`, in order (they do not depend on the CRC so far). -/
def fram_kvs_crc_loop_reads (kvs : fram_kvs_t) :
    Nat → fram_pm_t → Nat → Nat → List (Nat × Nat)
  | 0, _, _, _ => []
  | fuel + 1, pm, value_offset, remaining =>
      if remaining > 0 then
        let chunk := if remaining > FRAM_KVS_CRC_CHUNK then FRAM_KVS_CRC_CHUNK else remaining
        let r := fram_pm_read pm kvs.part value_offset chunk
        (value_offset, chunk) ::
          (if r.1 ≠ ESP_OK then []
           else
            fram_kvs_crc_loop_reads kvs fuel r.2.2 ((value_offset + chunk) % U32)
              (remaining - chunk))
      else []

/-- The reads `fram_kvs_compute_crc` issues through `fram_pm_read`, in order:
the key, then the chunks of the value. -/
def fram_kvs_compute_crc_reads (kvs : fram_kvs_t) (pm : fram_pm_t) (offset : Nat)
    (hdr : fram_kvs_header_t) (key_buf : List Nat) : List (Nat × Nat) :=
  let rk :=
    if hdr.key_len > 0 then
      fram_pm_read pm kvs.part ((offset + KVS_HEADER_SIZE) % U32) hdr.key_len
    else (ESP_OK, key_buf, pm)
  (if hdr.key_len > 0 then [((offset + KVS_HEADER_SIZE) % U32, hdr.key_len)] else []) ++
    (if rk.1 ≠ ESP_OK then []
     else
      fram_kvs_crc_loop_reads kvs hdr.value_len rk.2.2
        ((offset + KVS_HEADER_SIZE + hdr.key_len) % U32) hdr.value_len)

/-- The reads the loop of `fram_kvs_scan` issues through `fram_pm_read`, in
order: per iteration the header, then the commit byte, then the key and the
value, as far as the iteration gets. The reads do not depend on the key looked
for nor on the last match. -/
def fram_kvs_scan_loop_reads (K : Kconfig) (kvs : fram_kvs_t) (p : fram_partition_t) :
    Nat → fram_pm_t → Nat → List Nat → List (Nat × Nat)
  | 0, _, _, _ => []
  | fuel + 1, pm, offset, key_buf =>
      if (offset + KVS_HEADER_SIZE + 1) % U32 ≤ p.size then
        let rh := fram_kvs_read_header kvs pm offset
        (offset, KVS_HEADER_SIZE) ::
          (if rh.1 ≠ ESP_OK then []
           else
            let hdr := rh.2.1
            if !fram_kvs_header_valid K kvs hdr then []
            else
              let record_size := fram_kvs_record_size hdr
              if offset > p.size ∨ record_size > p.size ∨ (offset + record_size) % U32 > p.size
              then []
              else
                let rc := fram_kvs_read_commit kvs rh.2.2 offset hdr.key_len hdr.value_len
                (fram_kvs_commit_offset offset hdr.key_len hdr.value_len, 1) ::
                  (if rc.1 ≠ ESP_OK then []
                   else if rc.2.1 ≠ FRAM_KVS_COMMIT then []
                   else
                    let cc := fram_kvs_compute_crc kvs rc.2.2 offset hdr key_buf
                    fram_kvs_compute_crc_reads kvs rc.2.2 offset hdr key_buf ++
                      (if cc.1 = ESP_ERR_INVALID_CRC then []
                       else if cc.1 ≠ ESP_OK then []
                       else
                        fram_kvs_scan_loop_reads K kvs p fuel cc.2.2
                          ((offset + record_size) % U32) cc.2.1)))
      else []

/-- The reads the loop of `fram_kvs_find_end` issues through `fram_pm_read`, in
order; they do not depend on `next_seq`. -/
def fram_kvs_find_end_loop_reads (K : Kconfig) (kvs : fram_kvs_t) (p : fram_partition_t) :
    Nat → fram_pm_t → Nat → List Nat → List (Nat × Nat)
  | 0, _, _, _ => []
  | fuel + 1, pm, offset, key_buf =>
      if (offset + KVS_HEADER_SIZE + 1) % U32 ≤ p.size then
        let rh := fram_kvs_read_header kvs pm offset
        (offset, KVS_HEADER_SIZE) ::
          (if rh.1 ≠ ESP_OK then []
           else
            let hdr := rh.2.1
            if !fram_kvs_header_valid K kvs hdr then []
            else
              let record_size := fram_kvs_record_size hdr
              if offset > p.size ∨ record_size > p.size ∨ (offset + record_size) % U32 > p.size
              then []
              else
                let rc := fram_kvs_read_commit kvs rh.2.2 offset hdr.key_len hdr.value_len
                (fram_kvs_commit_offset offset hdr.key_len hdr.value_len, 1) ::
                  (if rc.1 ≠ ESP_OK then []
                   else if rc.2.1 ≠ FRAM_KVS_COMMIT then []
                   else
                    let cc := fram_kvs_compute_crc kvs rc.2.2 offset hdr key_buf
                    fram_kvs_compute_crc_reads kvs rc.2.2 offset hdr key_buf ++
                      (if cc.1 = ESP_ERR_INVALID_CRC then []
                       else if cc.1 ≠ ESP_OK then []
                       else
                        fram_kvs_find_end_loop_reads K kvs p fuel cc.2.2
                          ((offset + record_size) % U32) cc.2.1)))
      else []

/-- A read `(offset, len)` of at least one byte that lies inside the
partition. -/
def ReadFits (p : fram_partition_t) (r : Nat × Nat) : Prop :=
  0 < r.2 ∧ r.1 + r.2 ≤ p.size

open esp_err_t

/-! ## Key/value store: the live records of a partition -/

/-- The header stored at an offset, read off the partition bytes. -/
def spec_kvs_header (pmem : Nat → Nat) (off : Nat) : fram_kvs_header_t :=
  fram_kvs_header_of_bytes (mem_read pmem off KVS_HEADER_SIZE)

/-- The size of the record stored at an offset: the header, the key, the value
and the commit byte. -/
def spec_kvs_size (pmem : Nat → Nat) (off : Nat) : Nat :=
  KVS_HEADER_SIZE + (spec_kvs_header pmem off).key_len + (spec_kvs_header pmem off).value_len + 1

/-- A live record at an offset, in the words of the specification: the magic
matches, `1 ≤ key_len ≤ 15`, `value_len` is at most the configured maximum,
the record fits in the partition, its commit byte is `0xA5` and its CRC (over
the header up to the CRC field, the key and the value) matches. -/
def spec_kvs_live (K : Kconfig) (magic : Nat) (p : fram_partition_t) (pmem : Nat → Nat)
    (off : Nat) : Bool :=
  decide ((spec_kvs_header pmem off).magic = magic ∧
    1 ≤ (spec_kvs_header pmem off).key_len ∧ (spec_kvs_header pmem off).key_len ≤ 15 ∧
    (spec_kvs_header pmem off).value_len ≤ K.FRAM_KVS_MAX_VALUE ∧
    off + spec_kvs_size pmem off ≤ p.size ∧
    pmem (off + KVS_HEADER_SIZE + (spec_kvs_header pmem off).key_len
      + (spec_kvs_header pmem off).value_len) = 0xA5 ∧
    fram_crc32_le 0 ((spec_kvs_header pmem off).head_bytes ++
      (mem_read pmem (off + KVS_HEADER_SIZE) (spec_kvs_header pmem off).key_len ++
        mem_read pmem (off + KVS_HEADER_SIZE + (spec_kvs_header pmem off).key_len)
          (spec_kvs_header pmem off).value_len))
      = (spec_kvs_header pmem off).crc32)

/-- The offsets of the consecutive live records from `off` on, up to the first
offset that holds no live record (at most `fuel` of them; a record has at least
22 bytes, so `fuel = p.size + 1` covers the partition). -/
def spec_kvs_run (K : Kconfig) (magic : Nat) (p : fram_partition_t) (pmem : Nat → Nat) :
    Nat → Nat → List Nat
  | 0, _ => []
  | fuel + 1, off =>
      if spec_kvs_live K magic p pmem off then
        off :: spec_kvs_run K magic p pmem fuel (off + spec_kvs_size pmem off)
      else []

/-- The end offset of a run of records that starts at `off`: the end of its
last record, `off` for the empty run. -/
def spec_kvs_run_end (pmem : Nat → Nat) (off : Nat) (run : List Nat) : Nat :=
  match run.getLast? with
  | none => off
  | some o => o + spec_kvs_size pmem o

/-- The maximum `seq` among the records of a run, plus one; 0 for the empty
run. -/
def spec_kvs_next_seq (pmem : Nat → Nat) (run : List Nat) : Nat :=
  (run.map (fun o => (spec_kvs_header pmem o).seq + 1)).foldl max 0

/-- The value of `next_seq` after the loop of `fram_kvs_find_end` has accepted
the records of a run, one after the other, starting from 0. -/
def kvs_seq_fold (pmem : Nat → Nat) (run : List Nat) : Nat :=
  (run.map (fun o => (spec_kvs_header pmem o).seq)).foldl kvs_seq_upd 0

/-! ### A record with the last sequence number -/

/-- The committed record of `set("a", "one", 3)` in the store of `test_fram.c`
with the sequence number `2^32 - 1`: the header with its CRC, the key, the
value and the commit byte. -/
def example_kvs_last_seq_record : List Nat :=
  [77, 83, 86, 75, 255, 255, 255, 255, 1, 0, 3, 0, 0, 0, 0, 0, 96, 154, 74, 105,
   97, 111, 110, 101, 165]

/-- A partition content: that record at offset 0, erased bytes behind it. -/
def example_kvs_last_seq_mem : Nat → Nat :=
  mem_write (fun _ => 0xFF) 0 example_kvs_last_seq_record

/-- The example manager over a device whose partition `"kvs"` holds that
content; the rest of the device is erased. -/
def example_kvs_last_seq_pm : fram_pm_t :=
  { example_pm with
    dev := mock_dev (fun a => if a < example_kvs_part.offset then 0xFF
      else example_kvs_last_seq_mem (a - example_kvs_part.offset)) 32768 }

open esp_err_t

/-! ## Ring recovery after appends -/

/-- The ring object agrees with what the recovery of `fram_ring_init` computes
from the view `V` of the slots (`V s` is the sequence number of the record that
validates in slot `s`): either no slot validates and the log is empty, or the
newest record has the sequence number `Q < 2^32 - 1` and sits in slot `S`, the
lowest slot that carries the highest sequence number, `head_seq = Q + 1`,
`head_slot = (S + 1) mod capacity`, and `count` is the length of the run of
sequence numbers `Q, Q - 1, ..` found from `S` backwards. -/
def RingRecovers (ring : fram_ring_t) (V : Nat → Option Nat) : Prop :=
  ((∀ s, s < ring.capacity → V s = none) ∧
    ring.head_slot = 0 ∧ ring.tail_slot = 0 ∧ ring.head_seq = 0 ∧ ring.count = 0) ∨
  (∃ Q S, Q + 1 < U32 ∧ S < ring.capacity ∧ V S = some Q ∧
    (∀ s q, s < ring.capacity → V s = some q → q ≤ Q) ∧
    (∀ s, s < S → V s ≠ some Q) ∧
    ring.head_slot = (S + 1) % ring.capacity ∧
    ring.head_seq = Q + 1 ∧
    ring.tail_slot = (ring.head_slot + ring.capacity - ring.count) % ring.capacity ∧
    ring.count ≤ ring.capacity ∧
    (∀ k, k < ring.count → k ≤ Q ∧
      V ((S + ring.capacity - k) % ring.capacity) = some (Q - k)) ∧
    (ring.count < ring.capacity →
      ¬ (ring.count ≤ Q ∧
        V ((S + ring.capacity - ring.count) % ring.capacity) = some (Q - ring.count))))

/-! ### A ring record with the last sequence number -/

/-- The header `fram_ring_append` writes in the ring of `test_fram.c` for an
empty payload, the timer value 0 and the sequence number `2^32 - 1`, with its
CRC. -/
def example_ring_last_seq_header : List Nat :=
  [71, 78, 73, 82, 255, 255, 255, 255, 0, 0, 0, 0, 0, 0, 0, 0, 0, 0, 0, 0, 82, 76, 40, 194]

/-- A partition content: that header in slot 0 with the commit byte of the
slot (offset `24 + 16`) set, erased bytes everywhere else. -/
def example_ring_last_seq_mem : Nat → Nat :=
  mem_write (mem_write (fun _ => 0xFF) 0 example_ring_last_seq_header) 40 [0xA5]

/-- The example manager over a device whose partition `"ring"` holds that
content; the rest of the device is erased. -/
def example_ring_last_seq_pm : fram_pm_t :=
  { example_pm with
    dev := mock_dev (fun a => if a < example_ring_part.offset then 0xFF
      else example_ring_last_seq_mem (a - example_ring_part.offset)) 32768 }

/-- The call `fram_ring_init` on that partition. -/
def example_ring_last_seq_init : esp_err_t × fram_ring_t × fram_pm_t :=
  fram_ring_init example_K example_ring0 example_ring_last_seq_pm example_ring_cfg

/-- One append of the payload `[0x01]` after that call. -/
def example_ring_last_seq_run : esp_err_t × fram_ring_t × fram_pm_t :=
  fram_ring_append_all example_ring_last_seq_init.2.1 example_ring_last_seq_init.2.2
    [([0x01], 0)]

open esp_err_t

/-! ### A ring whose payload area exceeds the 16-bit length field -/

/-- A build whose `CONFIG_FRAM_RING_MAX_PAYLOAD` is 65536; the other constants
are those of `example_K`. -/
def example_wide_K : Kconfig :=
  { example_K with FRAM_RING_MAX_PAYLOAD := 65536 }

/-- A partition `"ring"` of 128 KiB at the start of a device. -/
def example_wide_part : fram_partition_t :=
  { name := [0x72, 0x69, 0x6E, 0x67], offset := 0, size := 131072, flags := 0 }

/-- An initialised partition manager over an erased mock device of 128 KiB
with the single partition `example_wide_part`. -/
def example_wide_pm : fram_pm_t :=
  { dev := mock_dev (fun _ => 0xFF) 131072
    partitions := [example_wide_part]
    partition_count := 1
    initialized := true }

/-- A ring configuration with `max_payload = 65536`: slots of
`24 + 65536 + 1` bytes, so the partition holds one slot. -/
def example_wide_cfg : fram_ring_config_t :=
  { partition_name := [0x72, 0x69, 0x6E, 0x67], max_payload := 65536, magic := 0x52494E47 }

/-- The call `fram_ring_init` with that configuration on the erased
partition. -/
def example_wide_init : esp_err_t × fram_ring_t × fram_pm_t :=
  fram_ring_init example_wide_K example_ring0 example_wide_pm example_wide_cfg

/-! ### A store whose last set was interrupted -/

/-- The call `set("b", "old", 3)` on the store after `set("a", "one", 3)` and
`set("b", "two", 3)` on the erased `"kvs"` partition of the tests, on the mock
armed to fail at its second operation: the commit byte of the new record (at
offset 74 of the partition) is zeroed, then the write of the header fails. -/
def example_torn_set : esp_err_t × fram_kvs_t × fram_pm_t :=
  example_kvs_failed example_pm 32768 example_kvs_ops 2 (kvs_op.set [0x62] [0x6F, 0x6C, 0x64])

/-- The partition manager after a restart on the media that the interrupted
call left. -/
def example_torn_pm : fram_pm_t :=
  example_kvs_restart example_pm 32768 example_kvs_ops 2 (kvs_op.set [0x62] [0x6F, 0x6C, 0x64])

/-! ## Little-endian fields -/

theorem le_bytes_length (w n : Nat) : (le_bytes w n).length = w := by
  induction w generalizing n with
  | zero => rfl
  | succ w ih => simp [le_bytes, ih]

theorem le_val_le_bytes (w n : Nat) : le_val (le_bytes w n) = n % 256 ^ w := by
  induction w generalizing n with
  | zero => simp [le_bytes, le_val, Nat.mod_one]
  | succ w ih =>
    simp only [le_bytes, le_val, ih]
    rw [pow_succ', Nat.mod_mul]

theorem le_val_le_bytes_of_lt (w n : Nat) (h : n < 256 ^ w) :
    le_val (le_bytes w n) = n := by
  rw [le_val_le_bytes, Nat.mod_eq_of_lt h]

theorem le_val_le_bytes_1 (n : Nat) (h : n < 256) : le_val (le_bytes 1 n) = n := by
  rw [le_val_le_bytes, Nat.mod_eq_of_lt (by norm_num; exact h)]

theorem le_val_le_bytes_2 (n : Nat) (h : n < 65536) : le_val (le_bytes 2 n) = n := by
  rw [le_val_le_bytes, Nat.mod_eq_of_lt (by norm_num; exact h)]

theorem le_val_le_bytes_4 (n : Nat) (h : n < 4294967296) : le_val (le_bytes 4 n) = n := by
  rw [le_val_le_bytes, Nat.mod_eq_of_lt (by norm_num; exact h)]

theorem le_val_le_bytes_8 (n : Nat) (h : n < 18446744073709551616) :
    le_val (le_bytes 8 n) = n := by
  rw [le_val_le_bytes, Nat.mod_eq_of_lt (by norm_num; exact h)]

theorem U32_eq : U32 = 4294967296 := rfl

theorem U64_eq : U64 = 18446744073709551616 := rfl

/-! ## CRC32 -/

theorem crc32_bit_lt (c : Nat) (h : c < U32) : crc32_bit c < U32 := by
  unfold crc32_bit
  have h2 : c / 2 < 2 ^ 32 := by
    have : c < 2 ^ 32 := h
    omega
  split
  · exact Nat.xor_lt_two_pow h2 (by norm_num)
  · exact h2

theorem crc32_byte_lt (c b : Nat) (h : c < U32) : crc32_byte c b < U32 := by
  unfold crc32_byte
  have hb : b % 256 < 2 ^ 32 := by omega
  have h0 : c ^^^ (b % 256) < U32 := Nat.xor_lt_two_pow h hb
  exact crc32_bit_lt _ (crc32_bit_lt _ (crc32_bit_lt _ (crc32_bit_lt _
    (crc32_bit_lt _ (crc32_bit_lt _ (crc32_bit_lt _ (crc32_bit_lt _ h0)))))))

theorem crc32_foldl_lt (data : List Nat) (c : Nat) (h : c < U32) :
    data.foldl crc32_byte c < U32 := by
  induction data generalizing c with
  | nil => simpa using h
  | cons b bs ih => exact ih _ (crc32_byte_lt c b h)

theorem fram_crc32_le_lt (seed : Nat) (data : List Nat) : fram_crc32_le seed data < U32 := by
  unfold fram_crc32_le esp_rom_crc32_le
  exact crc32_foldl_lt data _ (Nat.mod_lt _ (by decide))

theorem fram_crc32_le_append (seed : Nat) (a b : List Nat) :
    fram_crc32_le (fram_crc32_le seed a) b = fram_crc32_le seed (a ++ b) := by
  have h := fram_crc32_le_lt seed a
  unfold fram_crc32_le esp_rom_crc32_le at *
  rw [List.foldl_append, Nat.mod_eq_of_lt h]

theorem fram_crc32_le_nil (seed : Nat) (h : seed < U32) : fram_crc32_le seed [] = seed := by
  unfold fram_crc32_le esp_rom_crc32_le
  simp [Nat.mod_eq_of_lt h]

attribute [irreducible] fram_crc32_le

/-! ## Media reads and writes -/

theorem mem_read_length (mem : Nat → Nat) (addr len : Nat) :
    (mem_read mem addr len).length = len := by
  simp [mem_read]

theorem mem_read_zero (mem : Nat → Nat) (addr : Nat) : mem_read mem addr 0 = [] := by
  simp [mem_read]

theorem mem_read_congr (m1 m2 : Nat → Nat) (addr len : Nat)
    (h : ∀ i, i < len → m1 (addr + i) = m2 (addr + i)) :
    mem_read m1 addr len = mem_read m2 addr len := by
  unfold mem_read
  apply List.map_congr_left
  intro i hi
  exact h i (List.mem_range.mp hi)

theorem mem_read_add (mem : Nat → Nat) (addr l1 l2 : Nat) :
    mem_read mem addr (l1 + l2) = mem_read mem addr l1 ++ mem_read mem (addr + l1) l2 := by
  unfold mem_read
  rw [List.range_add, List.map_append, List.map_map]
  congr 1
  apply List.map_congr_left
  intro i _
  simp [Nat.add_assoc]

theorem mem_write_apply (mem : Nat → Nat) (addr : Nat) (data : List Nat) (a : Nat) :
    mem_write mem addr data a =
      if addr ≤ a ∧ a < addr + data.length then data.getD (a - addr) 0 else mem a := rfl

theorem mem_write_outside (mem : Nat → Nat) (addr : Nat) (data : List Nat) (a : Nat)
    (h : a < addr ∨ addr + data.length ≤ a) : mem_write mem addr data a = mem a := by
  rw [mem_write_apply, if_neg]
  omega

theorem mem_write_inside (mem : Nat → Nat) (addr : Nat) (data : List Nat) (i : Nat)
    (h : i < data.length) : mem_write mem addr data (addr + i) = data.getD i 0 := by
  rw [mem_write_apply, if_pos (by omega)]
  simp

theorem mem_read_write_same (mem : Nat → Nat) (addr : Nat) (data : List Nat) :
    mem_read (mem_write mem addr data) addr data.length = data := by
  apply List.ext_getElem
  · simp [mem_read]
  · intro i h1 h2
    simp only [mem_read, List.getElem_map, List.getElem_range]
    rw [mem_write_inside _ _ _ _ h2]
    simp [List.getD_eq_getElem?_getD, List.getElem?_eq_getElem h2]

theorem mem_read_write_disjoint (mem : Nat → Nat) (addr : Nat) (data : List Nat)
    (a len : Nat) (h : a + len ≤ addr ∨ addr + data.length ≤ a) :
    mem_read (mem_write mem addr data) a len = mem_read mem a len := by
  apply mem_read_congr
  intro i hi
  apply mem_write_outside
  omega

theorem mem_write_nil (mem : Nat → Nat) (addr : Nat) : mem_write mem addr [] = mem := by
  funext a
  rw [mem_write_apply, if_neg]
  simp

theorem mem_write_chunks (mem : Nat → Nat) (addr c : Nat) (data : List Nat)
    (hc : c ≤ data.length) :
    mem_write (mem_write mem addr (data.take c)) (addr + c) (data.drop c) =
      mem_write mem addr data := by
  funext a
  simp only [mem_write_apply, List.length_take, List.length_drop, Nat.min_eq_left hc]
  by_cases h1 : addr + c ≤ a ∧ a < addr + c + (data.length - c)
  · rw [if_pos h1, if_pos (by omega)]
    simp only [List.getD_eq_getElem?_getD, List.getElem?_drop]
    congr 2
    omega
  · rw [if_neg h1]
    by_cases h2 : addr ≤ a ∧ a < addr + c
    · rw [if_pos h2, if_pos (by omega)]
      simp only [List.getD_eq_getElem?_getD]
      rw [List.getElem?_take_of_lt (by omega)]
    · rw [if_neg h2, if_neg (by omega)]

/-! ## The device layer on a working device -/

theorem fram_hal_mock_read_ok (hal : fram_hal_t) (addr len : Nat)
    (hf : hal.ctx.fail_enabled = false) (hi : hal.ctx.inject_enabled = false)
    (hlen : 0 < len) (hr : addr + len ≤ hal.size_bytes) :
    fram_hal_mock_read hal addr len =
      (ESP_OK, mem_read hal.ctx.buffer addr len,
        { hal with ctx := { hal.ctx with op_count := (hal.ctx.op_count + 1) % U32 } }) := by
  unfold fram_hal_mock_read
  rw [if_neg (by omega), if_neg (by omega)]
  simp [fram_mock_should_fail, hf, hi]

theorem fram_hal_mock_write_ok (hal : fram_hal_t) (addr : Nat) (data : List Nat)
    (hf : hal.ctx.fail_enabled = false)
    (hlen : 0 < data.length) (hr : addr + data.length ≤ hal.size_bytes) :
    fram_hal_mock_write hal addr data =
      (ESP_OK, { hal with ctx := { hal.ctx with
          op_count := (hal.ctx.op_count + 1) % U32,
          buffer := mem_write hal.ctx.buffer addr data } }) := by
  unfold fram_hal_mock_write
  rw [if_neg (by omega), if_neg (by omega)]
  simp [fram_mock_should_fail, hf]

theorem fram_dev_read_loop_step (mem : Nat → Nat) (size mt : Nat) (hmt : 0 < mt)
    (fuel : Nat) (dev : fram_dev_t) (addr remaining : Nat)
    (hd : DevOK dev mem size) (h0 : remaining ≠ 0) (hr : addr + remaining ≤ size) :
    ∃ dev1 chunk, DevOK dev1 mem size ∧ 0 < chunk ∧ chunk ≤ remaining ∧
      ∀ out, fram_dev_read_loop (fuel + 1) dev addr remaining mt out =
        fram_dev_read_loop fuel dev1 (addr + chunk) (remaining - chunk) mt
          (out ++ mem_read mem addr chunk) := by
  obtain ⟨hm, hnf, hni, hse, hsl, hme⟩ := hd
  have hchunk : 0 < (if remaining > mt then mt else remaining) ∧
      (if remaining > mt then mt else remaining) ≤ remaining := by
    split <;> omega
  obtain ⟨hc0, hcr⟩ := hchunk
  have hrd := fram_hal_mock_read_ok dev.hal addr
    (if remaining > mt then mt else remaining) hnf hni hc0 (by omega)
  have hU : (addr + (if remaining > mt then mt else remaining)) % U32
      = addr + (if remaining > mt then mt else remaining) :=
    Nat.mod_eq_of_lt (by omega)
  refine ⟨fram_dev_record_success
      { dev with
        hal := { dev.hal with ctx := { dev.hal.ctx with
          op_count := (dev.hal.ctx.op_count + 1) % U32 } },
        read_count := (dev.read_count + 1) % U32 },
    (if remaining > mt then mt else remaining), ⟨hm, hnf, hni, hse, hsl, hme⟩, hc0, hcr, ?_⟩
  intro out
  rw [fram_dev_read_loop, if_neg h0]
  simp only [hrd, ne_eq, not_true_eq_false, if_false, hU, hme]

theorem fram_dev_read_loop_ok (mem : Nat → Nat) (size mt : Nat) (hmt : 0 < mt) :
    ∀ (fuel : Nat) (dev : fram_dev_t) (addr remaining : Nat) (out : List Nat),
      DevOK dev mem size → remaining ≤ fuel → addr + remaining ≤ size →
      ∃ dev1, fram_dev_read_loop fuel dev addr remaining mt out =
          (ESP_OK, out ++ mem_read mem addr remaining, dev1) ∧ DevOK dev1 mem size := by
  intro fuel
  induction fuel with
  | zero =>
    intro dev addr remaining out hd hf _
    have h0 : remaining = 0 := by omega
    subst h0
    exact ⟨dev, by simp [fram_dev_read_loop, mem_read_zero], hd⟩
  | succ fuel ih =>
    intro dev addr remaining out hd hf hr
    by_cases h0 : remaining = 0
    · subst h0
      exact ⟨dev, by simp [fram_dev_read_loop, mem_read_zero], hd⟩
    · obtain ⟨dev1, chunk, hd1, hc0, hcr, hstep⟩ :=
        fram_dev_read_loop_step mem size mt hmt fuel dev addr remaining hd h0 hr
      obtain ⟨dev2, h2, hd2⟩ := ih dev1 (addr + chunk) (remaining - chunk)
        (out ++ mem_read mem addr chunk) hd1 (by omega) (by omega)
      refine ⟨dev2, ?_, hd2⟩
      rw [hstep, h2, List.append_assoc, ← mem_read_add, Nat.add_sub_cancel' hcr]

theorem fram_dev_read_ok (dev : fram_dev_t) (mem : Nat → Nat) (size offset len : Nat)
    (hd : DevOK dev mem size) (hlen : 0 < len) (hr : offset + len ≤ size) :
    ∃ dev1, fram_dev_read dev offset len = (ESP_OK, mem_read mem offset len, dev1)
      ∧ DevOK dev1 mem size := by
  have hmt : 0 < (if dev.hal.max_transfer ≠ 0 then dev.hal.max_transfer
      else dev.hal.size_bytes) := by
    have := hd.size_eq
    split <;> omega
  obtain ⟨dev1, h1, hd1⟩ := fram_dev_read_loop_ok mem size _ hmt len dev offset len [] hd
    (Nat.le_refl _) hr
  refine ⟨dev1, ?_, hd1⟩
  unfold fram_dev_read
  have hs := hd.size_eq
  rw [if_neg (by omega), if_neg (by omega)]
  simp only [fram_dev_lock, hd.mutex_free, mutex_take, ne_eq, not_true_eq_false, if_false]
  simpa using h1

theorem fram_dev_write_loop_step (size mt : Nat) (hmt : 0 < mt)
    (fuel : Nat) (dev : fram_dev_t) (mem : Nat → Nat) (addr : Nat) (data : List Nat)
    (hd : DevOK dev mem size) (h0 : data.length ≠ 0) (hr : addr + data.length ≤ size) :
    ∃ dev1 chunk, DevOK dev1 (mem_write mem addr (data.take chunk)) size ∧ 0 < chunk ∧
      chunk ≤ data.length ∧
      fram_dev_write_loop (fuel + 1) dev addr data mt =
        fram_dev_write_loop fuel dev1 (addr + chunk) (data.drop chunk) mt := by
  obtain ⟨hm, hnf, hni, hse, hsl, hme⟩ := hd
  have hchunk : 0 < (if data.length > mt then mt else data.length) ∧
      (if data.length > mt then mt else data.length) ≤ data.length := by
    split <;> omega
  obtain ⟨hc0, hcr⟩ := hchunk
  have hlt : (data.take (if data.length > mt then mt else data.length)).length
      = (if data.length > mt then mt else data.length) := by
    rw [List.length_take]; omega
  have hwr := fram_hal_mock_write_ok dev.hal addr
    (data.take (if data.length > mt then mt else data.length)) hnf
    (by omega) (by omega)
  have hU : (addr + (if data.length > mt then mt else data.length)) % U32
      = addr + (if data.length > mt then mt else data.length) :=
    Nat.mod_eq_of_lt (by omega)
  refine ⟨fram_dev_record_success
      { dev with
        hal := { dev.hal with ctx := { dev.hal.ctx with
          op_count := (dev.hal.ctx.op_count + 1) % U32,
          buffer := mem_write dev.hal.ctx.buffer addr
            (data.take (if data.length > mt then mt else data.length)) } },
        write_count := (dev.write_count + 1) % U32 },
    (if data.length > mt then mt else data.length),
    ⟨hm, hnf, hni, hse, hsl, by rw [← hme]; rfl⟩, hc0, hcr, ?_⟩
  rw [fram_dev_write_loop, if_neg h0]
  simp only [hwr, ne_eq, not_true_eq_false, if_false, hU]

theorem fram_dev_write_loop_ok (size mt : Nat) (hmt : 0 < mt) :
    ∀ (fuel : Nat) (dev : fram_dev_t) (mem : Nat → Nat) (addr : Nat) (data : List Nat),
      DevOK dev mem size → data.length ≤ fuel → addr + data.length ≤ size →
      ∃ dev1, fram_dev_write_loop fuel dev addr data mt = (ESP_OK, dev1)
        ∧ DevOK dev1 (mem_write mem addr data) size := by
  intro fuel
  induction fuel with
  | zero =>
    intro dev mem addr data hd hf _
    have h0 : data = [] := List.eq_nil_of_length_eq_zero (by omega)
    subst h0
    exact ⟨dev, by simp [fram_dev_write_loop], by rw [mem_write_nil]; exact hd⟩
  | succ fuel ih =>
    intro dev mem addr data hd hf hr
    by_cases h0 : data.length = 0
    · have h0 : data = [] := List.eq_nil_of_length_eq_zero h0
      subst h0
      exact ⟨dev, by simp [fram_dev_write_loop], by rw [mem_write_nil]; exact hd⟩
    · obtain ⟨dev1, chunk, hd1, hc0, hcr, hstep⟩ :=
        fram_dev_write_loop_step size mt hmt fuel dev mem addr data hd h0 hr
      obtain ⟨dev2, h2, hd2⟩ := ih dev1 _ (addr + chunk) (data.drop chunk) hd1
        (by rw [List.length_drop]; omega) (by rw [List.length_drop]; omega)
      rw [mem_write_chunks _ _ _ _ hcr] at hd2
      exact ⟨dev2, by rw [hstep, h2], hd2⟩

theorem fram_dev_write_ok (dev : fram_dev_t) (mem : Nat → Nat) (size offset : Nat)
    (data : List Nat) (hd : DevOK dev mem size) (hlen : 0 < data.length)
    (hr : offset + data.length ≤ size) :
    ∃ dev1, fram_dev_write dev offset data = (ESP_OK, dev1)
      ∧ DevOK dev1 (mem_write mem offset data) size := by
  have hmt : 0 < (if dev.hal.max_transfer ≠ 0 then dev.hal.max_transfer
      else dev.hal.size_bytes) := by
    have := hd.size_eq
    split <;> omega
  obtain ⟨dev1, h1, hd1⟩ := fram_dev_write_loop_ok size _ hmt data.length dev mem offset data hd
    (Nat.le_refl _) hr
  refine ⟨dev1, ?_, hd1⟩
  unfold fram_dev_write
  have hs := hd.size_eq
  rw [if_neg (by omega), if_neg (by omega)]
  simp only [fram_dev_lock, hd.mutex_free, mutex_take, ne_eq, not_true_eq_false, if_false]
  exact h1

theorem fram_dev_read_bad (dev : fram_dev_t) (mem : Nat → Nat) (size offset len : Nat)
    (hd : DevOK dev mem size) (hlen : 0 < len) (hr : ¬ offset + len ≤ size) :
    fram_dev_read dev offset len = (ESP_ERR_INVALID_SIZE, [], dev) := by
  unfold fram_dev_read
  have hs := hd.size_eq
  rw [if_neg (by omega), if_pos (by omega)]

theorem fram_dev_write_bad (dev : fram_dev_t) (mem : Nat → Nat) (size offset : Nat)
    (data : List Nat) (hd : DevOK dev mem size) (hlen : 0 < data.length)
    (hr : ¬ offset + data.length ≤ size) :
    fram_dev_write dev offset data = (ESP_ERR_INVALID_SIZE, dev) := by
  unfold fram_dev_write
  have hs := hd.size_eq
  rw [if_neg (by omega), if_pos (by omega)]

theorem slice_mid (pre x post : List Nat) (off len : Nat)
    (h1 : pre.length = off) (h2 : x.length = len) :
    slice (pre ++ (x ++ post)) off len = x := by
  subst h1 h2
  simp [slice]

theorem slice_length (data : List Nat) (off len : Nat) (h : off + len ≤ data.length) :
    (slice data off len).length = len := by
  simp only [slice, List.length_take, List.length_drop]
  omega

theorem slice_mem_read (mem : Nat → Nat) (addr n off len : Nat) (h : off + len ≤ n) :
    slice (mem_read mem addr n) off len = mem_read mem (addr + off) len := by
  have hn : n = off + (len + (n - off - len)) := by omega
  rw [hn, mem_read_add, mem_read_add]
  exact slice_mid _ _ _ _ _ (mem_read_length _ _ _) (mem_read_length _ _ _)

theorem mem_read_write_sub (mem : Nat → Nat) (addr : Nat) (data : List Nat) (i len : Nat)
    (h : i + len ≤ data.length) :
    mem_read (mem_write mem addr data) (addr + i) len = slice data i len := by
  have h1 := mem_read_write_same mem addr data
  rw [← slice_mem_read _ addr data.length i len h, h1]

theorem fram_dev_read_total (dev : fram_dev_t) (mem : Nat → Nat) (size offset len : Nat)
    (hd : DevOK dev mem size) (hlen : 0 < len) :
    ∃ dev1, DevOK dev1 mem size ∧
      fram_dev_read dev offset len =
        (if offset + len ≤ size then ESP_OK else ESP_ERR_INVALID_SIZE,
         if offset + len ≤ size then mem_read mem offset len else [], dev1) := by
  by_cases h : offset + len ≤ size
  · obtain ⟨dev1, h1, hd1⟩ := fram_dev_read_ok dev mem size offset len hd hlen h
    exact ⟨dev1, hd1, by simp [h1, h]⟩
  · exact ⟨dev, hd, by simp [fram_dev_read_bad dev mem size offset len hd hlen h, h]⟩

theorem fram_dev_write_total (dev : fram_dev_t) (mem : Nat → Nat) (size offset : Nat)
    (data : List Nat) (hd : DevOK dev mem size) (hlen : 0 < data.length) :
    ∃ dev1, DevOK dev1 (if offset + data.length ≤ size then mem_write mem offset data else mem)
        size ∧
      fram_dev_write dev offset data =
        (if offset + data.length ≤ size then ESP_OK else ESP_ERR_INVALID_SIZE, dev1) := by
  by_cases h : offset + data.length ≤ size
  · obtain ⟨dev1, h1, hd1⟩ := fram_dev_write_ok dev mem size offset data hd hlen h
    exact ⟨dev1, by simpa [h] using hd1, by simp [h1, h]⟩
  · exact ⟨dev, by simpa [h] using hd,
      by simp [fram_dev_write_bad dev mem size offset data hd hlen h, h]⟩

/-- Overwriting the middle part `x` of a freshly written image `pre ++ x ++ post`
by `y` leaves the image `pre ++ y ++ post` on the media. -/
theorem mem_read_patch (mem : Nat → Nat) (off k : Nat) (pre x y post : List Nat)
    (hk : pre.length = k) (hxy : x.length = y.length) :
    mem_read (mem_write (mem_write mem off (pre ++ (x ++ post))) (off + k) y) off
        (k + (y.length + post.length))
      = pre ++ (y ++ post) := by
  have hD : (pre ++ (x ++ post)).length = k + (y.length + post.length) := by
    simp [hk, hxy]
  rw [mem_read_add, mem_read_add]
  congr 1
  · rw [mem_read_write_disjoint _ _ _ _ _ (Or.inl (Nat.le_refl _))]
    have h := mem_read_write_sub mem off (pre ++ (x ++ post)) 0 k (by omega)
    rw [Nat.add_zero] at h
    rw [h]
    have := slice_mid [] pre (x ++ post) 0 k rfl hk
    simpa using this
  · congr 1
    · exact mem_read_write_same _ _ _
    · rw [mem_read_write_disjoint _ _ _ _ _ (Or.inr (Nat.le_refl _))]
      rw [Nat.add_assoc, mem_read_write_sub mem off (pre ++ (x ++ post)) (k + y.length)
        post.length (by omega)]
      have := slice_mid (pre ++ x) post [] (k + y.length) post.length
        (by simp [hk, hxy]) rfl
      simpa using this

/-! ## Superblock images -/

theorem head_bytes_length (sb : fram_superblock_t) (hp : sb.parts.length = 448) :
    sb.head_bytes.length = 464 := by
  simp [fram_superblock_t.head_bytes, le_bytes_length, hp]

theorem to_bytes_length (sb : fram_superblock_t) (hp : sb.parts.length = 448)
    (hr : sb.reserved.length = 3) : sb.to_bytes.length = 472 := by
  simp [fram_superblock_t.to_bytes, head_bytes_length sb hp, le_bytes_length, hr]

theorem of_bytes_to_bytes (sb : fram_superblock_t) (h : SbWF sb) :
    fram_superblock_of_bytes sb.to_bytes = sb := by
  obtain ⟨h1, h2, h3, h4, h5, h6, h7, h8, h9⟩ := h
  have e1 : slice sb.to_bytes 0 4 = le_bytes 4 sb.magic := by
    have := slice_mid [] (le_bytes 4 sb.magic) (le_bytes 2 sb.version ++ (le_bytes 2 sb.count ++
      (le_bytes 4 sb.seq ++ (le_bytes 4 sb.size_bytes ++ (sb.parts ++
      (le_bytes 4 sb.crc32 ++ (le_bytes 1 sb.commit ++ sb.reserved))))))) 0 4 rfl
      (le_bytes_length _ _)
    simpa [fram_superblock_t.to_bytes, fram_superblock_t.head_bytes] using this
  have e2 : slice sb.to_bytes 4 2 = le_bytes 2 sb.version := by
    have := slice_mid (le_bytes 4 sb.magic) (le_bytes 2 sb.version) (le_bytes 2 sb.count ++
      (le_bytes 4 sb.seq ++ (le_bytes 4 sb.size_bytes ++ (sb.parts ++
      (le_bytes 4 sb.crc32 ++ (le_bytes 1 sb.commit ++ sb.reserved)))))) 4 2
      (le_bytes_length _ _) (le_bytes_length _ _)
    simpa [fram_superblock_t.to_bytes, fram_superblock_t.head_bytes] using this
  have e3 : slice sb.to_bytes 6 2 = le_bytes 2 sb.count := by
    have := slice_mid (le_bytes 4 sb.magic ++ le_bytes 2 sb.version) (le_bytes 2 sb.count)
      (le_bytes 4 sb.seq ++ (le_bytes 4 sb.size_bytes ++ (sb.parts ++
      (le_bytes 4 sb.crc32 ++ (le_bytes 1 sb.commit ++ sb.reserved))))) 6 2
      (by simp [le_bytes_length]) (le_bytes_length _ _)
    simpa [fram_superblock_t.to_bytes, fram_superblock_t.head_bytes] using this
  have e4 : slice sb.to_bytes 8 4 = le_bytes 4 sb.seq := by
    have := slice_mid (le_bytes 4 sb.magic ++ le_bytes 2 sb.version ++ le_bytes 2 sb.count)
      (le_bytes 4 sb.seq) (le_bytes 4 sb.size_bytes ++ (sb.parts ++
      (le_bytes 4 sb.crc32 ++ (le_bytes 1 sb.commit ++ sb.reserved)))) 8 4
      (by simp [le_bytes_length]) (le_bytes_length _ _)
    simpa [fram_superblock_t.to_bytes, fram_superblock_t.head_bytes] using this
  have e5 : slice sb.to_bytes 12 4 = le_bytes 4 sb.size_bytes := by
    have := slice_mid (le_bytes 4 sb.magic ++ le_bytes 2 sb.version ++ le_bytes 2 sb.count
      ++ le_bytes 4 sb.seq) (le_bytes 4 sb.size_bytes) (sb.parts ++
      (le_bytes 4 sb.crc32 ++ (le_bytes 1 sb.commit ++ sb.reserved))) 12 4
      (by simp [le_bytes_length]) (le_bytes_length _ _)
    simpa [fram_superblock_t.to_bytes, fram_superblock_t.head_bytes] using this
  have e6 : slice sb.to_bytes 16 448 = sb.parts := by
    have := slice_mid (le_bytes 4 sb.magic ++ le_bytes 2 sb.version ++ le_bytes 2 sb.count
      ++ le_bytes 4 sb.seq ++ le_bytes 4 sb.size_bytes) sb.parts
      (le_bytes 4 sb.crc32 ++ (le_bytes 1 sb.commit ++ sb.reserved)) 16 448
      (by simp [le_bytes_length]) h6
    simpa [fram_superblock_t.to_bytes, fram_superblock_t.head_bytes] using this
  have e7 : slice sb.to_bytes 464 4 = le_bytes 4 sb.crc32 := by
    have := slice_mid sb.head_bytes (le_bytes 4 sb.crc32)
      (le_bytes 1 sb.commit ++ sb.reserved) 464 4
      (head_bytes_length sb h6) (le_bytes_length _ _)
    simpa [fram_superblock_t.to_bytes] using this
  have e8 : slice sb.to_bytes 468 1 = le_bytes 1 sb.commit := by
    have := slice_mid (sb.head_bytes ++ le_bytes 4 sb.crc32) (le_bytes 1 sb.commit)
      sb.reserved 468 1
      (by simp [head_bytes_length sb h6, le_bytes_length]) (le_bytes_length _ _)
    simpa [fram_superblock_t.to_bytes] using this
  have e9 : slice sb.to_bytes 469 3 = sb.reserved := by
    have := slice_mid (sb.head_bytes ++ le_bytes 4 sb.crc32 ++ le_bytes 1 sb.commit)
      sb.reserved [] 469 3
      (by simp [head_bytes_length sb h6, le_bytes_length]) h9
    simpa [fram_superblock_t.to_bytes] using this
  unfold fram_superblock_of_bytes
  rw [e1, e2, e3, e4, e5, e6, e7, e8, e9]
  simp only [le_val_le_bytes_4 _ h1, le_val_le_bytes_2 _ h2,
    le_val_le_bytes_2 _ h3, le_val_le_bytes_4 _ h4,
    le_val_le_bytes_4 _ h5, le_val_le_bytes_4 _ h7,
    le_val_le_bytes_1 _ h8]

theorem select_fst_le (av bv : Bool) (a b : fram_superblock_t) :
    (fram_superblock_write_select av bv a b).1 ≤ 1 := by
  unfold fram_superblock_write_select
  split_ifs <;> simp

theorem select_snd_lt (av bv : Bool) (a b : fram_superblock_t) :
    (fram_superblock_write_select av bv a b).2 < U32 := by
  unfold fram_superblock_write_select
  split_ifs <;> first | exact Nat.mod_lt _ (by decide) | decide

/-- The committed image of the record written for sequence number `q`. -/
theorem temp_commit_eq (sb : fram_superblock_t) (q k : Nat) :
    ({ fram_superblock_write_temp sb q with commit := k } : fram_superblock_t) =
      { magic := sb.magic, version := sb.version, count := sb.count, seq := q,
        size_bytes := sb.size_bytes, parts := sb.parts,
        crc32 := fram_crc32_le 0 (le_bytes 4 sb.magic ++ (le_bytes 2 sb.version ++
          (le_bytes 2 sb.count ++ (le_bytes 4 q ++ (le_bytes 4 sb.size_bytes ++ sb.parts))))),
        commit := k, reserved := [0, 0, 0] } := by
  simp only [fram_superblock_write_temp, fram_superblock_crc, fram_superblock_t.head_bytes]

theorem temp_eq (sb : fram_superblock_t) (q : Nat) :
    fram_superblock_write_temp sb q =
      { magic := sb.magic, version := sb.version, count := sb.count, seq := q,
        size_bytes := sb.size_bytes, parts := sb.parts,
        crc32 := fram_crc32_le 0 (le_bytes 4 sb.magic ++ (le_bytes 2 sb.version ++
          (le_bytes 2 sb.count ++ (le_bytes 4 q ++ (le_bytes 4 sb.size_bytes ++ sb.parts))))),
        commit := 0, reserved := [0, 0, 0] } := by
  simp only [fram_superblock_write_temp, fram_superblock_crc, fram_superblock_t.head_bytes]

theorem temp_wf (sb : fram_superblock_t) (q k : Nat) (size : Nat)
    (hm : sb.magic = FRAM_SUPERBLOCK_MAGIC) (hv : sb.version = FRAM_SUPERBLOCK_VERSION)
    (hs : sb.size_bytes = size) (hsz : size < U32) (hc : sb.count ≤ FRAM_PART_MAX)
    (hp : sb.parts.length = 448) (hq : q < U32) (hk : k < 256) :
    SbWF { fram_superblock_write_temp sb q with commit := k } := by
  rw [temp_commit_eq]
  rw [U32_eq] at hsz hq
  have hcrc := fram_crc32_le_lt 0 (le_bytes 4 sb.magic ++ (le_bytes 2 sb.version ++
          (le_bytes 2 sb.count ++ (le_bytes 4 q ++ (le_bytes 4 sb.size_bytes ++ sb.parts)))))
  rw [U32_eq] at hcrc
  have hc16 : sb.count ≤ 16 := hc
  have hmag : sb.magic < 4294967296 := by rw [hm]; decide
  have hver : sb.version < 65536 := by rw [hv]; decide
  exact ⟨hmag, hver, by show sb.count < 65536; omega, hq, by show sb.size_bytes < 4294967296; omega,
    hp, hcrc, hk, rfl⟩

theorem temp_to_bytes_split (sb : fram_superblock_t) (q k : Nat) :
    ({ fram_superblock_write_temp sb q with commit := k } : fram_superblock_t).to_bytes =
      (le_bytes 4 sb.magic ++ (le_bytes 2 sb.version ++
          (le_bytes 2 sb.count ++ (le_bytes 4 q ++ (le_bytes 4 sb.size_bytes ++ sb.parts))))
        ++ le_bytes 4 (fram_crc32_le 0 (le_bytes 4 sb.magic ++ (le_bytes 2 sb.version ++
          (le_bytes 2 sb.count ++ (le_bytes 4 q ++ (le_bytes 4 sb.size_bytes ++ sb.parts)))))))
      ++ ([k % 256] ++ [0, 0, 0]) := by
  rw [temp_commit_eq]
  simp only [fram_superblock_t.to_bytes, fram_superblock_t.head_bytes, fram_superblock_crc,
    le_bytes, List.append_assoc, List.singleton_append, List.cons_append, List.nil_append]

/-- The media after the two device writes of `fram_superblock_write` at copy
offset `off`: the target copy holds the committed record. -/
theorem superblock_media_target (mem : Nat → Nat) (off : Nat) (sb : fram_superblock_t)
    (q size : Nat)
    (hm : sb.magic = FRAM_SUPERBLOCK_MAGIC) (hv : sb.version = FRAM_SUPERBLOCK_VERSION)
    (hs : sb.size_bytes = size) (hsz : size < U32) (hc : sb.count ≤ FRAM_PART_MAX)
    (hp : sb.parts.length = 448) (hq : q < U32) :
    superblock_at (mem_write (mem_write mem off (fram_superblock_write_temp sb q).to_bytes)
        (off + SUPERBLOCK_COMMIT_OFFSET) [FRAM_SUPERBLOCK_COMMIT]) off =
      { fram_superblock_write_temp sb q with commit := FRAM_SUPERBLOCK_COMMIT } := by
  have hwf := temp_wf sb q FRAM_SUPERBLOCK_COMMIT size hm hv hs hsz hc hp hq (by decide)
  have h0 := temp_to_bytes_split sb q 0
  have h1 := temp_to_bytes_split sb q FRAM_SUPERBLOCK_COMMIT
  have hz : ({ fram_superblock_write_temp sb q with commit := 0 } : fram_superblock_t)
      = fram_superblock_write_temp sb q := by rw [temp_commit_eq, temp_eq]
  rw [hz] at h0
  have hlen : (le_bytes 4 sb.magic ++ (le_bytes 2 sb.version ++
          (le_bytes 2 sb.count ++ (le_bytes 4 q ++ (le_bytes 4 sb.size_bytes ++ sb.parts))))
        ++ le_bytes 4 (fram_crc32_le 0 (le_bytes 4 sb.magic ++ (le_bytes 2 sb.version ++
          (le_bytes 2 sb.count ++ (le_bytes 4 q ++ (le_bytes 4 sb.size_bytes ++ sb.parts))))))
        ).length = 468 := by
    simp only [List.length_append, le_bytes_length, hp]
  have hpatch := mem_read_patch mem off 468 _ [0 % 256] [FRAM_SUPERBLOCK_COMMIT] [0, 0, 0]
    hlen rfl
  have e165 : FRAM_SUPERBLOCK_COMMIT % 256 = FRAM_SUPERBLOCK_COMMIT := by decide
  rw [e165] at h1
  unfold superblock_at
  rw [h0]
  have e472 : SUPERBLOCK_SIZE = 468 + ([FRAM_SUPERBLOCK_COMMIT].length + [0, 0, 0].length) := by
    decide
  rw [e472]
  have e468 : SUPERBLOCK_COMMIT_OFFSET = 468 := rfl
  rw [e468, hpatch, ← h1]
  exact of_bytes_to_bytes _ hwf

theorem temp_to_bytes_length (sb : fram_superblock_t) (q : Nat) (hp : sb.parts.length = 448) :
    (fram_superblock_write_temp sb q).to_bytes.length = 472 := by
  rw [temp_eq]
  exact to_bytes_length _ hp rfl

theorem superblock_media_other (mem : Nat → Nat) (off other : Nat) (sb : fram_superblock_t)
    (q : Nat) (hp : sb.parts.length = 448)
    (hdis : other + SUPERBLOCK_SIZE ≤ off ∨ off + SUPERBLOCK_SIZE ≤ other) :
    superblock_at (mem_write (mem_write mem off (fram_superblock_write_temp sb q).to_bytes)
        (off + SUPERBLOCK_COMMIT_OFFSET) [FRAM_SUPERBLOCK_COMMIT]) other =
      superblock_at mem other := by
  have hl := temp_to_bytes_length sb q hp
  unfold superblock_at
  simp only [SUPERBLOCK_SIZE, SUPERBLOCK_COMMIT_OFFSET] at *
  rw [mem_read_write_disjoint _ _ _ _ _ (by simp only [List.length_singleton]; omega),
    mem_read_write_disjoint _ _ _ _ _ (by rw [hl]; omega)]

/-- The committed record is valid. -/
theorem superblock_committed_valid (sb : fram_superblock_t) (q size : Nat)
    (hm : sb.magic = FRAM_SUPERBLOCK_MAGIC) (hv : sb.version = FRAM_SUPERBLOCK_VERSION)
    (hs : sb.size_bytes = size) (hc : sb.count ≤ FRAM_PART_MAX) :
    fram_superblock_valid
      { fram_superblock_write_temp sb q with commit := FRAM_SUPERBLOCK_COMMIT } size = true := by
  rw [temp_commit_eq]
  have : ¬ sb.count > FRAM_PART_MAX := Nat.not_lt.mpr hc
  simp only [fram_superblock_valid, hm, hv, hs, this, fram_superblock_crc,
    fram_superblock_t.head_bytes, ne_eq, not_true_eq_false, or_self, if_false, decide_True]

theorem superblock_offset_zero (base : Nat) (h : base < U32) :
    fram_superblock_offset base 0 = base := by
  unfold fram_superblock_offset
  simp [Nat.mod_eq_of_lt h]

theorem superblock_offset_one (base : Nat) (h : base + SUPERBLOCK_SIZE < U32) :
    fram_superblock_offset base 1 = base + SUPERBLOCK_SIZE := by
  unfold fram_superblock_offset
  have h1 : SUPERBLOCK_SIZE % U32 = SUPERBLOCK_SIZE := by decide
  rw [Nat.one_mul, h1, Nat.mod_eq_of_lt h]

theorem superblock_offset_idx (base t : Nat) (ht : t ≤ 1)
    (h : base + SUPERBLOCK_SIZE < U32) :
    fram_superblock_offset base t = base + SUPERBLOCK_SIZE * t := by
  have h472 : SUPERBLOCK_SIZE = 472 := rfl
  rcases Nat.le_one_iff_eq_zero_or_eq_one.mp ht with h0 | h1
  · subst h0
    rw [superblock_offset_zero base (by omega)]; simp
  · subst h1
    rw [superblock_offset_one base h]; simp

/-- On a working device with room for both copies, `fram_superblock_read`
selects among the two copies held by the media. -/
theorem superblock_read_both (dev : fram_dev_t) (mem : Nat → Nat) (size base : Nat)
    (hd : DevOK dev mem size) (hr : base + 2 * SUPERBLOCK_SIZE ≤ size) :
    ∃ dev1, DevOK dev1 mem size ∧ fram_superblock_read dev base =
      (if (!fram_superblock_valid (superblock_at mem base) size
            && !fram_superblock_valid (superblock_at mem (base + SUPERBLOCK_SIZE)) size) = true
        then (ESP_ERR_NOT_FOUND, none, dev1)
        else if (fram_superblock_valid (superblock_at mem base) size
            && (!fram_superblock_valid (superblock_at mem (base + SUPERBLOCK_SIZE)) size
              || decide ((superblock_at mem base).seq
                  ≥ (superblock_at mem (base + SUPERBLOCK_SIZE)).seq))) = true
        then (ESP_OK, some (superblock_at mem base), dev1)
        else (ESP_OK, some (superblock_at mem (base + SUPERBLOCK_SIZE)), dev1)) := by
  have h472 : SUPERBLOCK_SIZE = 472 := rfl
  have hlt := hd.size_lt
  rw [U32_eq] at hlt
  obtain ⟨dev1, h1, hd1⟩ := fram_dev_read_ok dev mem size base SUPERBLOCK_SIZE hd
    (by decide) (by omega)
  have hB : (base + SUPERBLOCK_SIZE) % U32 = base + SUPERBLOCK_SIZE :=
    Nat.mod_eq_of_lt (by rw [U32_eq]; omega)
  obtain ⟨dev2, h2, hd2⟩ := fram_dev_read_ok dev1 mem size (base + SUPERBLOCK_SIZE)
    SUPERBLOCK_SIZE hd1 (by decide) (by omega)
  refine ⟨dev2, hd2, ?_⟩
  unfold fram_superblock_read
  simp only [h1, hB, h2, fram_dev_get_size, hd2.size_eq, decide_True, Bool.not_true,
    Bool.false_and, Bool.true_and, superblock_at]
  rfl

set_option maxRecDepth 8000 in
/-- On a working device with room for both copies, `fram_superblock_write`
succeeds and leaves the committed record in the selected copy. -/
theorem superblock_write_both (dev : fram_dev_t) (mem : Nat → Nat) (size base : Nat)
    (sb : fram_superblock_t)
    (hd : DevOK dev mem size) (hr : base + 2 * SUPERBLOCK_SIZE ≤ size)
    (hm : sb.magic = FRAM_SUPERBLOCK_MAGIC) (hv : sb.version = FRAM_SUPERBLOCK_VERSION)
    (hs : sb.size_bytes = size) (hc : sb.count ≤ FRAM_PART_MAX)
    (hp : sb.parts.length = 448) :
    ∃ dev1, fram_superblock_write dev base sb = (ESP_OK, dev1) ∧
      DevOK dev1
        (mem_write (mem_write mem
          (base + SUPERBLOCK_SIZE * (fram_superblock_write_select
            (fram_superblock_valid (superblock_at mem base) size)
            (fram_superblock_valid (superblock_at mem (base + SUPERBLOCK_SIZE)) size)
            (superblock_at mem base) (superblock_at mem (base + SUPERBLOCK_SIZE))).1)
          (fram_superblock_write_temp sb (fram_superblock_write_select
            (fram_superblock_valid (superblock_at mem base) size)
            (fram_superblock_valid (superblock_at mem (base + SUPERBLOCK_SIZE)) size)
            (superblock_at mem base) (superblock_at mem (base + SUPERBLOCK_SIZE))).2).to_bytes)
          (base + SUPERBLOCK_SIZE * (fram_superblock_write_select
            (fram_superblock_valid (superblock_at mem base) size)
            (fram_superblock_valid (superblock_at mem (base + SUPERBLOCK_SIZE)) size)
            (superblock_at mem base) (superblock_at mem (base + SUPERBLOCK_SIZE))).1
            + SUPERBLOCK_COMMIT_OFFSET) [FRAM_SUPERBLOCK_COMMIT]) size := by
  have h472 : SUPERBLOCK_SIZE = 472 := rfl
  have h468 : SUPERBLOCK_COMMIT_OFFSET = 468 := rfl
  have hlt := hd.size_lt
  rw [U32_eq] at hlt
  obtain ⟨dev1, h1, hd1⟩ := fram_dev_read_ok dev mem size base SUPERBLOCK_SIZE hd
    (by decide) (by omega)
  have hB : (base + SUPERBLOCK_SIZE) % U32 = base + SUPERBLOCK_SIZE :=
    Nat.mod_eq_of_lt (by rw [U32_eq]; omega)
  obtain ⟨dev2, h2, hd2⟩ := fram_dev_read_ok dev1 mem size (base + SUPERBLOCK_SIZE)
    SUPERBLOCK_SIZE hd1 (by decide) (by omega)
  generalize hsel : fram_superblock_write_select
            (fram_superblock_valid (superblock_at mem base) size)
            (fram_superblock_valid (superblock_at mem (base + SUPERBLOCK_SIZE)) size)
            (superblock_at mem base) (superblock_at mem (base + SUPERBLOCK_SIZE)) = sel
  have ht : sel.1 ≤ 1 := by rw [← hsel]; exact select_fst_le _ _ _ _
  have hoff := superblock_offset_idx base sel.1 ht (by rw [U32_eq]; omega)
  have hmul : SUPERBLOCK_SIZE * sel.1 ≤ 472 := by
    rw [h472]; omega
  have hl := temp_to_bytes_length sb sel.2 hp
  obtain ⟨dev3, h3, hd3⟩ := fram_dev_write_ok dev2 mem size (base + SUPERBLOCK_SIZE * sel.1)
    (fram_superblock_write_temp sb sel.2).to_bytes hd2 (by rw [hl]; decide)
    (by rw [hl]; omega)
  have hC : (base + SUPERBLOCK_SIZE * sel.1 + SUPERBLOCK_COMMIT_OFFSET) % U32
      = base + SUPERBLOCK_SIZE * sel.1 + SUPERBLOCK_COMMIT_OFFSET :=
    Nat.mod_eq_of_lt (by rw [U32_eq]; omega)
  obtain ⟨dev4, h4, hd4⟩ := fram_dev_write_ok dev3 _ size
    (base + SUPERBLOCK_SIZE * sel.1 + SUPERBLOCK_COMMIT_OFFSET)
    [FRAM_SUPERBLOCK_COMMIT] hd3 (by decide)
    (by simp only [List.length_singleton]; omega)
  refine ⟨dev4, ?_, hd4⟩
  have hnc : ¬ sb.count > FRAM_PART_MAX := Nat.not_lt.mpr hc
  unfold fram_superblock_write
  rw [if_neg (by simp [hm, hv]), if_neg (by simp [hs, fram_dev_get_size, hd.size_eq, hnc])]
  simp only [h1, hB, h2, fram_dev_get_size, hd.size_eq, if_true]
  have hsel2 : fram_superblock_write_select
      (fram_superblock_valid (fram_superblock_of_bytes (mem_read mem base SUPERBLOCK_SIZE)) size)
      (fram_superblock_valid (fram_superblock_of_bytes
        (mem_read mem (base + SUPERBLOCK_SIZE) SUPERBLOCK_SIZE)) size)
      (fram_superblock_of_bytes (mem_read mem base SUPERBLOCK_SIZE))
      (fram_superblock_of_bytes (mem_read mem (base + SUPERBLOCK_SIZE) SUPERBLOCK_SIZE))
      = sel := hsel
  simp only [hsel2, hoff, h3, hC, h4, ne_eq, not_true_eq_false, if_false]

theorem select_false_left (bv : Bool) (a b : fram_superblock_t) :
    (fram_superblock_write_select false bv a b).1 = 0 := by
  unfold fram_superblock_write_select
  cases bv <;> simp

theorem select_false_false (a b : fram_superblock_t) :
    fram_superblock_write_select false false a b = (0, 1) := by
  unfold fram_superblock_write_select
  simp

theorem select_true_false (a b : fram_superblock_t) :
    fram_superblock_write_select true false a b = (1, (a.seq + 1) % U32) := by
  unfold fram_superblock_write_select
  simp

set_option maxRecDepth 8000 in
/-- The body of `fram_superblock_write` once the two reads are known. -/
theorem superblock_write_eq (dev : fram_dev_t) (base : Nat) (sb : fram_superblock_t)
    (ea eb : esp_err_t) (da db : List Nat) (dev1 dev2 : fram_dev_t)
    (h1 : fram_dev_read dev base SUPERBLOCK_SIZE = (ea, da, dev1))
    (h2 : fram_dev_read dev1 ((base + SUPERBLOCK_SIZE) % U32) SUPERBLOCK_SIZE = (eb, db, dev2))
    (hm : sb.magic = FRAM_SUPERBLOCK_MAGIC) (hv : sb.version = FRAM_SUPERBLOCK_VERSION)
    (hs : sb.size_bytes = dev.hal.size_bytes) (hc : sb.count ≤ FRAM_PART_MAX)
    (sel : Nat × Nat)
    (hsel : fram_superblock_write_select
      (if ea = ESP_OK then fram_superblock_valid (fram_superblock_of_bytes da) dev.hal.size_bytes
        else false)
      (if eb = ESP_OK then fram_superblock_valid (fram_superblock_of_bytes db) dev.hal.size_bytes
        else false)
      (fram_superblock_of_bytes da) (fram_superblock_of_bytes db) = sel) :
    fram_superblock_write dev base sb =
      if (fram_dev_write dev2 (fram_superblock_offset base sel.1)
          (fram_superblock_write_temp sb sel.2).to_bytes).1 ≠ ESP_OK
      then fram_dev_write dev2 (fram_superblock_offset base sel.1)
          (fram_superblock_write_temp sb sel.2).to_bytes
      else fram_dev_write (fram_dev_write dev2 (fram_superblock_offset base sel.1)
          (fram_superblock_write_temp sb sel.2).to_bytes).2
          ((fram_superblock_offset base sel.1 + SUPERBLOCK_COMMIT_OFFSET) % U32)
          [FRAM_SUPERBLOCK_COMMIT] := by
  have hnc : ¬ sb.count > FRAM_PART_MAX := Nat.not_lt.mpr hc
  unfold fram_superblock_write
  rw [if_neg (by simp [hm, hv]), if_neg (by simp [hs, fram_dev_get_size, hnc])]
  simp only [h1, h2, fram_dev_get_size, hsel]

/-- Without room for copy A the write fails. -/
theorem superblock_write_noA (dev : fram_dev_t) (mem : Nat → Nat) (size base : Nat)
    (sb : fram_superblock_t) (hd : DevOK dev mem size) (hbase : base < U32)
    (hA : ¬ base + SUPERBLOCK_SIZE ≤ size)
    (hm : sb.magic = FRAM_SUPERBLOCK_MAGIC) (hv : sb.version = FRAM_SUPERBLOCK_VERSION)
    (hs : sb.size_bytes = size) (hc : sb.count ≤ FRAM_PART_MAX)
    (hp : sb.parts.length = 448) :
    (fram_superblock_write dev base sb).1 ≠ ESP_OK := by
  have hA1 := fram_dev_read_bad dev mem size base SUPERBLOCK_SIZE hd (by decide) hA
  obtain ⟨dev2, hd2, h2⟩ := fram_dev_read_total dev mem size ((base + SUPERBLOCK_SIZE) % U32)
    SUPERBLOCK_SIZE hd (by decide)
  have hse := hd.size_eq
  rw [superblock_write_eq dev base sb _ _ _ _ _ _ hA1 h2 hm hv (by rw [hse]; exact hs) hc _ rfl]
  simp only [reduceCtorEq, if_false, select_false_left, superblock_offset_zero base hbase]
  have hl := temp_to_bytes_length sb
    (fram_superblock_write_select false
      (if (if (base + SUPERBLOCK_SIZE) % U32 + SUPERBLOCK_SIZE ≤ size then ESP_OK
          else ESP_ERR_INVALID_SIZE) = ESP_OK then
        fram_superblock_valid (fram_superblock_of_bytes
          (if (base + SUPERBLOCK_SIZE) % U32 + SUPERBLOCK_SIZE ≤ size then
            mem_read mem ((base + SUPERBLOCK_SIZE) % U32) SUPERBLOCK_SIZE else []))
          dev.hal.size_bytes
      else false)
      (fram_superblock_of_bytes [])
      (fram_superblock_of_bytes
        (if (base + SUPERBLOCK_SIZE) % U32 + SUPERBLOCK_SIZE ≤ size then
          mem_read mem ((base + SUPERBLOCK_SIZE) % U32) SUPERBLOCK_SIZE else []))).2 hp
  have hbad := fram_dev_write_bad dev2 mem size base _ hd2 (by rw [hl]; decide)
    (by rw [hl]; exact hA)
  rw [hbad]
  simp

/-- With room for copy A only: the write succeeds exactly when copy A is not
valid, and then puts the record with sequence number 1 into copy A. -/
theorem superblock_write_onlyA (dev : fram_dev_t) (mem : Nat → Nat) (size base : Nat)
    (sb : fram_superblock_t) (hd : DevOK dev mem size)
    (hA : base + SUPERBLOCK_SIZE ≤ size) (hB : ¬ base + 2 * SUPERBLOCK_SIZE ≤ size)
    (hm : sb.magic = FRAM_SUPERBLOCK_MAGIC) (hv : sb.version = FRAM_SUPERBLOCK_VERSION)
    (hs : sb.size_bytes = size) (hc : sb.count ≤ FRAM_PART_MAX)
    (hp : sb.parts.length = 448)
    (hw : (fram_superblock_write dev base sb).1 = ESP_OK) :
    fram_superblock_valid (superblock_at mem base) size = false ∧
    DevOK (fram_superblock_write dev base sb).2
      (mem_write (mem_write mem base (fram_superblock_write_temp sb 1).to_bytes)
        (base + SUPERBLOCK_COMMIT_OFFSET) [FRAM_SUPERBLOCK_COMMIT]) size := by
  have h472 : SUPERBLOCK_SIZE = 472 := rfl
  have h468 : SUPERBLOCK_COMMIT_OFFSET = 468 := rfl
  have hlt := hd.size_lt
  rw [U32_eq] at hlt
  have hse := hd.size_eq
  obtain ⟨dev1, h1, hd1⟩ := fram_dev_read_ok dev mem size base SUPERBLOCK_SIZE hd
    (by decide) hA
  have hBoff : (base + SUPERBLOCK_SIZE) % U32 = base + SUPERBLOCK_SIZE :=
    Nat.mod_eq_of_lt (by rw [U32_eq]; omega)
  have h2 := fram_dev_read_bad dev1 mem size (base + SUPERBLOCK_SIZE) SUPERBLOCK_SIZE hd1
    (by decide) (by omega)
  rw [← hBoff] at h2
  have heq := superblock_write_eq dev base sb _ _ _ _ _ _ h1 h2 hm hv
    (by rw [hse]; exact hs) hc _ rfl
  simp only [reduceCtorEq, if_false, if_true, hse] at heq
  have hat : fram_superblock_of_bytes (mem_read mem base SUPERBLOCK_SIZE)
      = superblock_at mem base := rfl
  rw [hat] at heq
  cases hval : fram_superblock_valid (superblock_at mem base) size
  · refine ⟨rfl, ?_⟩
    rw [hval, select_false_false] at heq
    have hl := temp_to_bytes_length sb 1 hp
    obtain ⟨dev3, h3, hd3⟩ := fram_dev_write_ok dev1 mem size base
      (fram_superblock_write_temp sb 1).to_bytes hd1 (by rw [hl]; decide) (by rw [hl]; omega)
    obtain ⟨dev4, h4, hd4⟩ := fram_dev_write_ok dev3 _ size (base + SUPERBLOCK_COMMIT_OFFSET)
      [FRAM_SUPERBLOCK_COMMIT] hd3 (by decide) (by simp only [List.length_singleton]; omega)
    have hC : (base + SUPERBLOCK_COMMIT_OFFSET) % U32 = base + SUPERBLOCK_COMMIT_OFFSET :=
      Nat.mod_eq_of_lt (by rw [U32_eq]; omega)
    simp only [superblock_offset_zero base (by rw [U32_eq]; omega), h3, hC, h4, ne_eq,
      not_true_eq_false, if_false] at heq
    rw [heq]
    exact hd4
  · exfalso
    rw [hval, select_true_false] at heq
    have hl := temp_to_bytes_length sb
      (((superblock_at mem base).seq + 1) % U32) hp
    have hbad := fram_dev_write_bad dev1 mem size (base + SUPERBLOCK_SIZE)
      (fram_superblock_write_temp sb (((superblock_at mem base).seq + 1) % U32)).to_bytes
      hd1 (by rw [hl]; decide) (by rw [hl]; omega)
    simp only [superblock_offset_one base (by rw [U32_eq]; omega), hbad, ne_eq, reduceCtorEq,
      not_false_eq_true, if_true] at heq
    rw [heq] at hw
    simp at hw

/-- With room for copy A only, `fram_superblock_read` returns copy A when it
is valid. -/
theorem superblock_read_onlyA (dev : fram_dev_t) (mem : Nat → Nat) (size base : Nat)
    (hd : DevOK dev mem size)
    (hA : base + SUPERBLOCK_SIZE ≤ size) (hB : ¬ base + 2 * SUPERBLOCK_SIZE ≤ size)
    (hval : fram_superblock_valid (superblock_at mem base) size = true) :
    (fram_superblock_read dev base).1 = ESP_OK ∧
    (fram_superblock_read dev base).2.1 = some (superblock_at mem base) := by
  have h472 : SUPERBLOCK_SIZE = 472 := rfl
  have hlt := hd.size_lt
  rw [U32_eq] at hlt
  obtain ⟨dev1, h1, hd1⟩ := fram_dev_read_ok dev mem size base SUPERBLOCK_SIZE hd
    (by decide) hA
  have hBoff : (base + SUPERBLOCK_SIZE) % U32 = base + SUPERBLOCK_SIZE :=
    Nat.mod_eq_of_lt (by rw [U32_eq]; omega)
  have h2 := fram_dev_read_bad dev1 mem size (base + SUPERBLOCK_SIZE) SUPERBLOCK_SIZE hd1
    (by decide) (by omega)
  have hat : fram_superblock_of_bytes (mem_read mem base SUPERBLOCK_SIZE)
      = superblock_at mem base := rfl
  unfold fram_superblock_read
  simp only [h1, hBoff, h2, fram_dev_get_size, hd1.size_eq, hat, hval, reduceCtorEq,
    decide_True, decide_False, Bool.not_true, Bool.not_false, Bool.false_and, Bool.true_and,
    Bool.and_self, Bool.true_or, Bool.false_eq_true, if_false, if_true, and_self]

/-- Poking the backing buffer of a working device. -/
theorem mock_poke_ok (dev : fram_dev_t) (mem : Nat → Nat) (size addr value : Nat)
    (hd : DevOK dev mem size) :
    DevOK (mock_poke dev addr value) (mem_write mem addr [value]) size := by
  obtain ⟨h1, h2, h3, h4, h5, h6⟩ := hd
  exact ⟨h1, h2, h3, h4, h5, by rw [← h6]; rfl⟩

/-- A copy whose commit byte was zeroed is not valid. -/
theorem superblock_poked_invalid (mem : Nat → Nat) (off size : Nat) :
    fram_superblock_valid
      (superblock_at (mem_write mem (off + SUPERBLOCK_COMMIT_OFFSET) [0]) off) size = false := by
  have hc : (superblock_at (mem_write mem (off + SUPERBLOCK_COMMIT_OFFSET) [0]) off).commit
      = 0 := by
    simp only [superblock_at, fram_superblock_of_bytes]
    rw [slice_mem_read _ _ _ _ _ (by decide)]
    have := mem_read_write_same mem (off + SUPERBLOCK_COMMIT_OFFSET) [0]
    have e : SUPERBLOCK_COMMIT_OFFSET = 468 := rfl
    rw [e] at this
    simp only [List.length_singleton] at this
    rw [e, this]
    rfl
  unfold fram_superblock_valid
  rw [hc]
  simp [FRAM_SUPERBLOCK_COMMIT]

theorem superblock_poked_other (mem : Nat → Nat) (off other : Nat)
    (hdis : other + SUPERBLOCK_SIZE ≤ off ∨ off + SUPERBLOCK_SIZE ≤ other) :
    superblock_at (mem_write mem (off + SUPERBLOCK_COMMIT_OFFSET) [0]) other
      = superblock_at mem other := by
  unfold superblock_at
  simp only [SUPERBLOCK_SIZE, SUPERBLOCK_COMMIT_OFFSET] at *
  rw [mem_read_write_disjoint _ _ _ _ _ (by simp only [List.length_singleton]; omega)]

theorem le_bytes_le_val (l : List Nat) (hb : ∀ b ∈ l, b < 256) :
    le_bytes l.length (le_val l) = l := by
  induction l with
  | nil => rfl
  | cons b bs ih =>
    have hb0 : b < 256 := hb b (List.mem_cons_self _ _)
    have ih2 := ih (fun x hx => hb x (List.mem_cons_of_mem _ hx))
    simp only [List.length_cons, le_bytes, le_val]
    have h1 : (b + 256 * le_val bs) % 256 = b := by omega
    have h2 : (b + 256 * le_val bs) / 256 = le_val bs := by omega
    rw [h1, h2, ih2]

theorem mem_read_bytes (mem : Nat → Nat) (hbytes : ∀ a, mem a < 256) (addr len : Nat) :
    ∀ b ∈ mem_read mem addr len, b < 256 := by
  intro b hb
  simp only [mem_read, List.mem_map, List.mem_range] at hb
  obtain ⟨i, _, rfl⟩ := hb
  exact hbytes _

theorem le_bytes_mem_read (mem : Nat → Nat) (hbytes : ∀ a, mem a < 256) (addr len : Nat) :
    le_bytes len (le_val (mem_read mem addr len)) = mem_read mem addr len := by
  have h := le_bytes_le_val (mem_read mem addr len) (mem_read_bytes mem hbytes addr len)
  rw [mem_read_length] at h
  exact h

/-- The fields of the copy stored at `off`, read off the media. -/
theorem superblock_at_fields (mem : Nat → Nat) (off : Nat) :
    superblock_at mem off =
      { magic := le_val (mem_read mem off 4)
        version := le_val (mem_read mem (off + 4) 2)
        count := le_val (mem_read mem (off + 6) 2)
        seq := le_val (mem_read mem (off + 8) 4)
        size_bytes := le_val (mem_read mem (off + 12) 4)
        parts := mem_read mem (off + 16) 448
        crc32 := le_val (mem_read mem (off + 464) 4)
        commit := le_val (mem_read mem (off + 468) 1)
        reserved := mem_read mem (off + 469) 3 } := by
  simp only [superblock_at, fram_superblock_of_bytes, SUPERBLOCK_SIZE]
  rw [slice_mem_read _ _ _ _ _ (by decide), slice_mem_read _ _ _ _ _ (by decide),
    slice_mem_read _ _ _ _ _ (by decide), slice_mem_read _ _ _ _ _ (by decide),
    slice_mem_read _ _ _ _ _ (by decide), slice_mem_read _ _ _ _ _ (by decide),
    slice_mem_read _ _ _ _ _ (by decide), slice_mem_read _ _ _ _ _ (by decide),
    slice_mem_read _ _ _ _ _ (by decide)]
  rw [Nat.add_zero]

theorem superblock_at_head (mem : Nat → Nat) (hbytes : ∀ a, mem a < 256) (off : Nat) :
    (superblock_at mem off).head_bytes = mem_read mem off 464 := by
  rw [superblock_at_fields]
  simp only [fram_superblock_t.head_bytes, le_bytes_mem_read mem hbytes]
  have e : (464 : Nat) = 4 + (2 + (2 + (4 + (4 + 448)))) := by decide
  rw [e, mem_read_add, mem_read_add, mem_read_add, mem_read_add, mem_read_add]

theorem le_val_singleton_read (mem : Nat → Nat) (addr : Nat) :
    le_val (mem_read mem addr 1) = mem addr := by
  simp [mem_read, le_val]

/-- On media made of bytes, the validity test of the code is the validity of
the specification. -/
theorem superblock_valid_eq_spec (mem : Nat → Nat) (hbytes : ∀ a, mem a < 256)
    (off capacity : Nat) :
    fram_superblock_valid (superblock_at mem off) capacity = spec_copy_valid mem off capacity := by
  have hcrc : fram_superblock_crc (superblock_at mem off) = fram_crc32_le 0 (mem_read mem off 464) := by
    unfold fram_superblock_crc
    rw [superblock_at_head mem hbytes]
  unfold fram_superblock_valid spec_copy_valid
  rw [hcrc]
  rw [superblock_at_fields]
  simp only [le_val_singleton_read, FRAM_SUPERBLOCK_MAGIC, FRAM_SUPERBLOCK_VERSION,
    FRAM_SUPERBLOCK_COMMIT, FRAM_PART_MAX]
  by_cases h1 : le_val (mem_read mem off 4) = 1296126534
  · by_cases h2 : le_val (mem_read mem (off + 4) 2) = 1
    · by_cases h3 : mem (off + 468) = 165
      · by_cases h4 : le_val (mem_read mem (off + 6) 2) ≤ 16
        · by_cases h5 : le_val (mem_read mem (off + 12) 4) = capacity
          · simp [h1, h2, h3, h4, h5]
          · simp [h1, h2, h3, h4, h5]
        · simp [h1, h2, h3, h4]
      · simp [h1, h2, h3]
    · simp [h1, h2]
  · simp [h1]

/-- C10. Superblock read selection: on a working device holding bytes, with
room for both copies, `fram_superblock_read` returns `ESP_ERR_NOT_FOUND` iff
neither copy is valid in the sense of the specification; it returns copy A when
A is valid and B is invalid or `A.seq ≥ B.seq`; and it returns copy B in every
other case. -/
theorem superblock_read_selection (dev : fram_dev_t) (mem : Nat → Nat) (size base : Nat)
    (hd : DevOK dev mem size) (hbytes : ∀ a, mem a < 256)
    (hr : base + 2 * SUPERBLOCK_SIZE ≤ size) :
    ((fram_superblock_read dev base).1 = ESP_ERR_NOT_FOUND ↔
        (spec_copy_valid mem base size = false ∧
          spec_copy_valid mem (base + SUPERBLOCK_SIZE) size = false)) ∧
    ((spec_copy_valid mem base size = true ∧
        (spec_copy_valid mem (base + SUPERBLOCK_SIZE) size = false ∨
          (superblock_at mem base).seq ≥ (superblock_at mem (base + SUPERBLOCK_SIZE)).seq)) →
      (fram_superblock_read dev base).1 = ESP_OK ∧
      (fram_superblock_read dev base).2.1 = some (superblock_at mem base)) ∧
    (spec_copy_valid mem (base + SUPERBLOCK_SIZE) size = true →
      ¬ (spec_copy_valid mem base size = true ∧
          (superblock_at mem base).seq ≥ (superblock_at mem (base + SUPERBLOCK_SIZE)).seq) →
      (fram_superblock_read dev base).1 = ESP_OK ∧
      (fram_superblock_read dev base).2.1 = some (superblock_at mem (base + SUPERBLOCK_SIZE))) := by
  obtain ⟨dev1, _, hread⟩ := superblock_read_both dev mem size base hd hr
  rw [hread, superblock_valid_eq_spec mem hbytes, superblock_valid_eq_spec mem hbytes]
  cases hA : spec_copy_valid mem base size <;>
    cases hB : spec_copy_valid mem (base + SUPERBLOCK_SIZE) size <;>
    by_cases hs : (superblock_at mem base).seq ≥ (superblock_at mem (base + SUPERBLOCK_SIZE)).seq <;>
    simp [hs]

/-- Witness for C10: an erased device of 1024 bytes holds no valid copy, and
the read reports `ESP_ERR_NOT_FOUND`. -/
theorem superblock_read_selection_witness :
    DevOK (mock_dev (fun _ => 0xFF) 1024) (fun _ => 0xFF) 1024 ∧
    (∀ a : Nat, (fun _ => 0xFF : Nat → Nat) a < 256) ∧
    0 + 2 * SUPERBLOCK_SIZE ≤ 1024 ∧
    (fram_superblock_read (mock_dev (fun _ => 0xFF) 1024) 0).1 = ESP_ERR_NOT_FOUND :=
  ⟨⟨rfl, rfl, rfl, rfl, by decide, rfl⟩, fun _ => (by decide : (255 : Nat) < 256), by decide,
    (superblock_read_selection (mock_dev (fun _ => 0xFF) 1024) (fun _ => 0xFF) 1024 0
      ⟨rfl, rfl, rfl, rfl, by decide, rfl⟩ (fun _ => (by decide : (255 : Nat) < 256)) (by decide)).1.mpr
      ⟨by decide, by decide⟩⟩

/-- What the target selection can return. -/
theorem select_cases (av bv : Bool) (a b : fram_superblock_t) :
    ((fram_superblock_write_select av bv a b).1 = 0 ∧
      (bv = true → (fram_superblock_write_select av bv a b).2 = (b.seq + 1) % U32) ∧
      (bv = false → (fram_superblock_write_select av bv a b).2 = 1 ∧ av = false) ∧
      (av = true → a.seq ≤ b.seq)) ∨
    ((fram_superblock_write_select av bv a b).1 = 1 ∧ av = true ∧
      (fram_superblock_write_select av bv a b).2 = (a.seq + 1) % U32 ∧
      (bv = true → b.seq < a.seq)) := by
  unfold fram_superblock_write_select
  cases av <;> cases bv <;> simp
  by_cases h : a.seq ≤ b.seq
  · simp [h]
  · simp [h]; omega

theorem committed_record_eq (sb : fram_superblock_t) (q : Nat) :
    ({ fram_superblock_write_temp sb q with commit := FRAM_SUPERBLOCK_COMMIT } :
        fram_superblock_t) =
      { sb with
        seq := q
        crc32 := fram_superblock_crc { sb with seq := q, commit := 0, reserved := [0, 0, 0] }
        commit := FRAM_SUPERBLOCK_COMMIT
        reserved := [0, 0, 0] } := by
  simp only [fram_superblock_write_temp]

theorem committed_record_seq (sb : fram_superblock_t) (q : Nat) :
    ({ fram_superblock_write_temp sb q with commit := FRAM_SUPERBLOCK_COMMIT } :
        fram_superblock_t).seq = q := by
  rw [temp_commit_eq]

/-- The two copies after a successful write with room for both. -/
theorem superblock_after_write (mem : Nat → Nat) (size base : Nat) (sb : fram_superblock_t)
    (t q : Nat) (ht : t ≤ 1)
    (hm : sb.magic = FRAM_SUPERBLOCK_MAGIC) (hv : sb.version = FRAM_SUPERBLOCK_VERSION)
    (hs : sb.size_bytes = size) (hsz : size < U32) (hc : sb.count ≤ FRAM_PART_MAX)
    (hp : sb.parts.length = 448) (hq : q < U32) :
    superblock_at (mem_write (mem_write mem (base + SUPERBLOCK_SIZE * t)
        (fram_superblock_write_temp sb q).to_bytes)
        (base + SUPERBLOCK_SIZE * t + SUPERBLOCK_COMMIT_OFFSET) [FRAM_SUPERBLOCK_COMMIT])
        (base + SUPERBLOCK_SIZE * t) =
      { fram_superblock_write_temp sb q with commit := FRAM_SUPERBLOCK_COMMIT } ∧
    superblock_at (mem_write (mem_write mem (base + SUPERBLOCK_SIZE * t)
        (fram_superblock_write_temp sb q).to_bytes)
        (base + SUPERBLOCK_SIZE * t + SUPERBLOCK_COMMIT_OFFSET) [FRAM_SUPERBLOCK_COMMIT])
        (base + SUPERBLOCK_SIZE * (1 - t)) =
      superblock_at mem (base + SUPERBLOCK_SIZE * (1 - t)) := by
  refine ⟨superblock_media_target mem _ sb q size hm hv hs hsz hc hp hq, ?_⟩
  apply superblock_media_other mem _ _ sb q hp
  have h472 : SUPERBLOCK_SIZE = 472 := rfl
  rcases Nat.le_one_iff_eq_zero_or_eq_one.mp ht with h0 | h1
  · subst h0; right; simp
  · subst h1; left; simp

/-- Read after a successful write, with room for both copies. -/
theorem superblock_write_read_both (dev : fram_dev_t) (mem : Nat → Nat) (size base : Nat)
    (sb : fram_superblock_t)
    (hd : DevOK dev mem size) (hr : base + 2 * SUPERBLOCK_SIZE ≤ size)
    (hm : sb.magic = FRAM_SUPERBLOCK_MAGIC) (hv : sb.version = FRAM_SUPERBLOCK_VERSION)
    (hs : sb.size_bytes = size) (hc : sb.count ≤ FRAM_PART_MAX)
    (hp : sb.parts.length = 448)
    (hseqA : fram_superblock_valid (superblock_at mem base) size = true →
      (superblock_at mem base).seq + 1 < U32)
    (hseqB : fram_superblock_valid (superblock_at mem (base + SUPERBLOCK_SIZE)) size = true →
      (superblock_at mem (base + SUPERBLOCK_SIZE)).seq + 1 < U32) :
    (fram_superblock_read (fram_superblock_write dev base sb).2 base).1 = ESP_OK ∧
    (fram_superblock_read (fram_superblock_write dev base sb).2 base).2.1 =
      some { fram_superblock_write_temp sb (fram_superblock_write_select
          (fram_superblock_valid (superblock_at mem base) size)
          (fram_superblock_valid (superblock_at mem (base + SUPERBLOCK_SIZE)) size)
          (superblock_at mem base) (superblock_at mem (base + SUPERBLOCK_SIZE))).2
        with commit := FRAM_SUPERBLOCK_COMMIT } := by
  obtain ⟨dev1, hw, hd1⟩ := superblock_write_both dev mem size base sb hd hr hm hv hs hc hp
  rw [hw]
  obtain ⟨dev2, _, hread⟩ := superblock_read_both dev1 _ size base hd1 hr
  rw [hread]
  have hsz := hd.size_lt
  generalize hsel : fram_superblock_write_select
      (fram_superblock_valid (superblock_at mem base) size)
      (fram_superblock_valid (superblock_at mem (base + SUPERBLOCK_SIZE)) size)
      (superblock_at mem base) (superblock_at mem (base + SUPERBLOCK_SIZE)) = sel
  have hcases := select_cases
      (fram_superblock_valid (superblock_at mem base) size)
      (fram_superblock_valid (superblock_at mem (base + SUPERBLOCK_SIZE)) size)
      (superblock_at mem base) (superblock_at mem (base + SUPERBLOCK_SIZE))
  rw [hsel] at hcases
  have hq : sel.2 < U32 := by rw [← hsel]; exact select_snd_lt _ _ _ _
  clear hsel hread hd1 hw
  obtain ⟨t, q⟩ := sel
  simp only at hcases hq ⊢
  have hFvalid := superblock_committed_valid sb q size hm hv hs hc
  rcases hcases with ⟨ht, hb1, _, _⟩ | ⟨ht, hav, hq1, _⟩
  · obtain ⟨hT, hO⟩ := superblock_after_write mem size base sb 0 q (by omega)
      hm hv hs hsz hc hp hq
    subst ht
    simp only [Nat.mul_zero, Nat.add_zero, Nat.sub_zero, Nat.mul_one] at hT hO ⊢
    simp only [hT, hO, hFvalid, committed_record_seq]
    cases hB : fram_superblock_valid (superblock_at mem (base + SUPERBLOCK_SIZE)) size
    · simp
    · have h1 := hb1 hB
      have h2 := hseqB hB
      rw [Nat.mod_eq_of_lt h2] at h1
      have h3 : q ≥ (superblock_at mem (base + SUPERBLOCK_SIZE)).seq := by omega
      simp [h3]
  · obtain ⟨hT, hO⟩ := superblock_after_write mem size base sb 1 q (by omega)
      hm hv hs hsz hc hp hq
    subst ht
    simp only [Nat.mul_one, Nat.sub_self, Nat.mul_zero, Nat.add_zero] at hT hO ⊢
    simp only [hT, hO, hFvalid, committed_record_seq, hav]
    have h2 := hseqA hav
    rw [Nat.mod_eq_of_lt h2] at hq1
    have h3 : ¬ (superblock_at mem base).seq ≥ q := by omega
    simp [h3]

/-- C5 (amended). Superblock write is published: on a working device, when
`fram_superblock_write` accepts `sb` and returns `ESP_OK`, and no valid copy on
the media already carries the largest sequence number `2^32 - 1`,
`fram_superblock_read` returns `ESP_OK` with the record just written: the
caller's magic, version, count, size_bytes and parts, the newly assigned seq,
the CRC of that record, commit = 0xA5 and reserved = 0. -/
theorem superblock_write_published (dev : fram_dev_t) (mem : Nat → Nat) (size base : Nat)
    (sb : fram_superblock_t)
    (hd : DevOK dev mem size) (hbase : base < U32)
    (hm : sb.magic = FRAM_SUPERBLOCK_MAGIC) (hv : sb.version = FRAM_SUPERBLOCK_VERSION)
    (hs : sb.size_bytes = size) (hc : sb.count ≤ FRAM_PART_MAX)
    (hp : sb.parts.length = 448)
    (hw : (fram_superblock_write dev base sb).1 = ESP_OK)
    (hseqA : base + SUPERBLOCK_SIZE ≤ size →
      fram_superblock_valid (superblock_at mem base) size = true →
      (superblock_at mem base).seq + 1 < U32)
    (hseqB : base + 2 * SUPERBLOCK_SIZE ≤ size →
      fram_superblock_valid (superblock_at mem (base + SUPERBLOCK_SIZE)) size = true →
      (superblock_at mem (base + SUPERBLOCK_SIZE)).seq + 1 < U32) :
    (fram_superblock_read (fram_superblock_write dev base sb).2 base).1 = ESP_OK ∧
    (fram_superblock_read (fram_superblock_write dev base sb).2 base).2.1 =
      some { sb with
        seq := (fram_superblock_write_select
          (fram_superblock_valid (superblock_at mem base) size)
          (decide (base + 2 * SUPERBLOCK_SIZE ≤ size) &&
            fram_superblock_valid (superblock_at mem (base + SUPERBLOCK_SIZE)) size)
          (superblock_at mem base) (superblock_at mem (base + SUPERBLOCK_SIZE))).2
        crc32 := fram_superblock_crc { sb with
          seq := (fram_superblock_write_select
            (fram_superblock_valid (superblock_at mem base) size)
            (decide (base + 2 * SUPERBLOCK_SIZE ≤ size) &&
              fram_superblock_valid (superblock_at mem (base + SUPERBLOCK_SIZE)) size)
            (superblock_at mem base) (superblock_at mem (base + SUPERBLOCK_SIZE))).2
          commit := 0
          reserved := [0, 0, 0] }
        commit := FRAM_SUPERBLOCK_COMMIT
        reserved := [0, 0, 0] } := by
  rw [← committed_record_eq]
  by_cases hA : base + SUPERBLOCK_SIZE ≤ size
  · by_cases hB : base + 2 * SUPERBLOCK_SIZE ≤ size
    · simp only [hB, decide_True, Bool.true_and]
      exact superblock_write_read_both dev mem size base sb hd hB hm hv hs hc hp
        (hseqA hA) (hseqB hB)
    · obtain ⟨hval, hd1⟩ := superblock_write_onlyA dev mem size base sb hd hA hB hm hv hs hc hp hw
      have hT := superblock_media_target mem base sb 1 size hm hv hs hd.size_lt hc hp (by decide)
      have hFvalid := superblock_committed_valid sb 1 size hm hv hs hc
      rw [← hT] at hFvalid
      have hread := superblock_read_onlyA _ _ size base hd1 hA hB hFvalid
      rw [hT] at hread
      simp only [hB, decide_False, Bool.false_and, hval, select_false_false]
      exact hread
  · exact absurd hw (superblock_write_noA dev mem size base sb hd hbase hA hm hv hs hc hp)

/-- Two successful writes need room for both copies. -/
theorem superblock_two_writes_room (dev : fram_dev_t) (mem : Nat → Nat) (size base : Nat)
    (sb : fram_superblock_t)
    (hd : DevOK dev mem size) (hbase : base < U32)
    (hm : sb.magic = FRAM_SUPERBLOCK_MAGIC) (hv : sb.version = FRAM_SUPERBLOCK_VERSION)
    (hs : sb.size_bytes = size) (hc : sb.count ≤ FRAM_PART_MAX)
    (hp : sb.parts.length = 448)
    (hw1 : (fram_superblock_write dev base sb).1 = ESP_OK)
    (hw2 : (fram_superblock_write (fram_superblock_write dev base sb).2 base sb).1 = ESP_OK) :
    base + 2 * SUPERBLOCK_SIZE ≤ size := by
  by_contra hB
  by_cases hA : base + SUPERBLOCK_SIZE ≤ size
  · obtain ⟨_, hd1⟩ := superblock_write_onlyA dev mem size base sb hd hA hB hm hv hs hc hp hw1
    obtain ⟨hval2, _⟩ := superblock_write_onlyA _ _ size base sb hd1 hA hB hm hv hs hc hp hw2
    have hT := superblock_media_target mem base sb 1 size hm hv hs hd.size_lt hc hp (by decide)
    rw [hT, superblock_committed_valid sb 1 size hm hv hs hc] at hval2
    exact Bool.noConfusion hval2
  · exact superblock_write_noA dev mem size base sb hd hbase hA hm hv hs hc hp hw1

/-- The media after two successful writes: the copies hold two committed
records with consecutive sequence numbers, the newer one in the copy chosen by
the second write. -/
theorem superblock_two_writes (dev : fram_dev_t) (mem : Nat → Nat) (size base : Nat)
    (sb : fram_superblock_t)
    (hd : DevOK dev mem size) (hr : base + 2 * SUPERBLOCK_SIZE ≤ size)
    (hm : sb.magic = FRAM_SUPERBLOCK_MAGIC) (hv : sb.version = FRAM_SUPERBLOCK_VERSION)
    (hs : sb.size_bytes = size) (hc : sb.count ≤ FRAM_PART_MAX)
    (hp : sb.parts.length = 448)
    (hseqA : fram_superblock_valid (superblock_at mem base) size = true →
      (superblock_at mem base).seq + 2 < U32)
    (hseqB : fram_superblock_valid (superblock_at mem (base + SUPERBLOCK_SIZE)) size = true →
      (superblock_at mem (base + SUPERBLOCK_SIZE)).seq + 2 < U32) :
    ∃ mem2 t q, t ≤ 1 ∧ q + 1 < U32 ∧
      DevOK (fram_superblock_write (fram_superblock_write dev base sb).2 base sb).2 mem2 size ∧
      superblock_at mem2 (base + SUPERBLOCK_SIZE * t) =
        { fram_superblock_write_temp sb (q + 1) with commit := FRAM_SUPERBLOCK_COMMIT } ∧
      superblock_at mem2 (base + SUPERBLOCK_SIZE * (1 - t)) =
        { fram_superblock_write_temp sb q with commit := FRAM_SUPERBLOCK_COMMIT } := by
  have hsz := hd.size_lt
  obtain ⟨dev1, hw1, hd1⟩ := superblock_write_both dev mem size base sb hd hr hm hv hs hc hp
  have hcases := select_cases
      (fram_superblock_valid (superblock_at mem base) size)
      (fram_superblock_valid (superblock_at mem (base + SUPERBLOCK_SIZE)) size)
      (superblock_at mem base) (superblock_at mem (base + SUPERBLOCK_SIZE))
  have hq1 := select_snd_lt
      (fram_superblock_valid (superblock_at mem base) size)
      (fram_superblock_valid (superblock_at mem (base + SUPERBLOCK_SIZE)) size)
      (superblock_at mem base) (superblock_at mem (base + SUPERBLOCK_SIZE))
  generalize fram_superblock_write_select
      (fram_superblock_valid (superblock_at mem base) size)
      (fram_superblock_valid (superblock_at mem (base + SUPERBLOCK_SIZE)) size)
      (superblock_at mem base) (superblock_at mem (base + SUPERBLOCK_SIZE)) = sel1
      at hd1 hcases hq1
  obtain ⟨t1, q1⟩ := sel1
  simp only at hd1 hcases hq1
  rw [hw1]
  obtain ⟨dev2, hw2, hd2⟩ := superblock_write_both dev1 _ size base sb hd1 hr hm hv hs hc hp
  rw [hw2]
  have hF1 := superblock_committed_valid sb q1 size hm hv hs hc
  rcases hcases with ⟨ht, hb1, hb0, _⟩ | ⟨ht, hav, hqa, _⟩
  · subst ht
    obtain ⟨hT, hO⟩ := superblock_after_write mem size base sb 0 q1 (by omega)
      hm hv hs hsz hc hp hq1
    simp only [Nat.mul_zero, Nat.add_zero, Nat.sub_zero, Nat.mul_one] at hT hO hd1 hd2
    simp only [hT, hO, hF1] at hd2
    have hq1' : q1 + 1 < U32 ∧ (fram_superblock_valid
        (superblock_at mem (base + SUPERBLOCK_SIZE)) size = true →
        (superblock_at mem (base + SUPERBLOCK_SIZE)).seq < q1) := by
      cases hB : fram_superblock_valid (superblock_at mem (base + SUPERBLOCK_SIZE)) size
      · have := (hb0 hB).1
        subst this
        exact ⟨by decide, fun h => Bool.noConfusion h⟩
      · have h1 := hb1 hB
        have h2 := hseqB hB
        rw [Nat.mod_eq_of_lt (by omega)] at h1
        exact ⟨by omega, fun _ => by omega⟩
    have hsel2 : fram_superblock_write_select true
        (fram_superblock_valid (superblock_at mem (base + SUPERBLOCK_SIZE)) size)
        { fram_superblock_write_temp sb q1 with commit := FRAM_SUPERBLOCK_COMMIT }
        (superblock_at mem (base + SUPERBLOCK_SIZE)) = (1, q1 + 1) := by
      unfold fram_superblock_write_select
      rw [committed_record_seq, Nat.mod_eq_of_lt hq1'.1]
      cases hB : fram_superblock_valid (superblock_at mem (base + SUPERBLOCK_SIZE)) size
      · simp
      · have := hq1'.2 hB
        simp only [Bool.and_self, if_true]
        rw [if_neg (by omega)]
    rw [hsel2] at hd2
    simp only [Nat.mul_one] at hd2
    obtain ⟨hT2, hO2⟩ := superblock_after_write
      (mem_write (mem_write mem base (fram_superblock_write_temp sb q1).to_bytes)
        (base + SUPERBLOCK_COMMIT_OFFSET) [FRAM_SUPERBLOCK_COMMIT])
      size base sb 1 (q1 + 1) (by omega) hm hv hs hsz hc hp hq1'.1
    simp only [Nat.mul_one, Nat.sub_self, Nat.mul_zero, Nat.add_zero] at hT2 hO2
    refine ⟨_, 1, q1, by omega, hq1'.1, hd2, ?_, ?_⟩
    · simpa using hT2
    · simp only [Nat.sub_self, Nat.mul_zero, Nat.add_zero]
      rw [hO2, hT]
  · subst ht
    obtain ⟨hT, hO⟩ := superblock_after_write mem size base sb 1 q1 (by omega)
      hm hv hs hsz hc hp hq1
    simp only [Nat.mul_one, Nat.sub_self, Nat.mul_zero, Nat.add_zero] at hT hO hd1 hd2
    simp only [hT, hO, hF1, hav] at hd2
    have h2 := hseqA hav
    rw [Nat.mod_eq_of_lt (by omega)] at hqa
    have hq1' : q1 + 1 < U32 := by omega
    have hsel2 : fram_superblock_write_select true true
        (superblock_at mem base)
        { fram_superblock_write_temp sb q1 with commit := FRAM_SUPERBLOCK_COMMIT }
        = (0, q1 + 1) := by
      unfold fram_superblock_write_select
      rw [committed_record_seq, Nat.mod_eq_of_lt hq1']
      simp only [Bool.and_self, if_true]
      rw [if_pos (by omega)]
    rw [hsel2] at hd2
    simp only [Nat.mul_zero, Nat.add_zero] at hd2
    obtain ⟨hT2, hO2⟩ := superblock_after_write
      (mem_write (mem_write mem (base + SUPERBLOCK_SIZE)
        (fram_superblock_write_temp sb q1).to_bytes)
        (base + SUPERBLOCK_SIZE + SUPERBLOCK_COMMIT_OFFSET) [FRAM_SUPERBLOCK_COMMIT])
      size base sb 0 (q1 + 1) (by omega) hm hv hs hsz hc hp hq1'
    simp only [Nat.mul_zero, Nat.add_zero, Nat.sub_zero, Nat.mul_one] at hT2 hO2
    refine ⟨_, 0, q1, by omega, hq1', hd2, ?_, ?_⟩
    · simpa using hT2
    · simp only [Nat.sub_zero, Nat.mul_one]
      rw [hO2, hT]

/-- C8 (amended). Superblock A/B commit recovery: on a working device, when
two successive `fram_superblock_write` calls of an accepted `sb` return
`ESP_OK` and every valid copy initially on the media has a sequence number of
at most `2^32 - 3`, both copies are valid afterwards, and zeroing the commit
byte of the copy holding the higher seq (copy A on a tie) makes
`fram_superblock_read` return `ESP_OK` with seq equal to that higher seq
minus 1. -/
theorem superblock_ab_commit_recovery (dev : fram_dev_t) (mem : Nat → Nat) (size base : Nat)
    (sb : fram_superblock_t)
    (hd : DevOK dev mem size) (hbase : base < U32)
    (hm : sb.magic = FRAM_SUPERBLOCK_MAGIC) (hv : sb.version = FRAM_SUPERBLOCK_VERSION)
    (hs : sb.size_bytes = size) (hc : sb.count ≤ FRAM_PART_MAX)
    (hp : sb.parts.length = 448)
    (hw1 : (fram_superblock_write dev base sb).1 = ESP_OK)
    (hw2 : (fram_superblock_write (fram_superblock_write dev base sb).2 base sb).1 = ESP_OK)
    (hseqA : fram_superblock_valid (superblock_at mem base) size = true →
      (superblock_at mem base).seq + 2 < U32)
    (hseqB : fram_superblock_valid (superblock_at mem (base + SUPERBLOCK_SIZE)) size = true →
      (superblock_at mem (base + SUPERBLOCK_SIZE)).seq + 2 < U32) :
    fram_superblock_valid
      (superblock_at (superblock_write_twice dev base sb).hal.ctx.buffer base) size = true ∧
    fram_superblock_valid
      (superblock_at (superblock_write_twice dev base sb).hal.ctx.buffer
        (base + SUPERBLOCK_SIZE)) size = true ∧
    (fram_superblock_read
      (mock_poke (superblock_write_twice dev base sb)
        (superblock_newest_offset (superblock_write_twice dev base sb).hal.ctx.buffer base
          + SUPERBLOCK_COMMIT_OFFSET) 0) base).1 = ESP_OK ∧
    (fram_superblock_read
      (mock_poke (superblock_write_twice dev base sb)
        (superblock_newest_offset (superblock_write_twice dev base sb).hal.ctx.buffer base
          + SUPERBLOCK_COMMIT_OFFSET) 0) base).2.1.map (fun r => r.seq) =
      some (superblock_newest_seq (superblock_write_twice dev base sb).hal.ctx.buffer base - 1) := by
  have hr := superblock_two_writes_room dev mem size base sb hd hbase hm hv hs hc hp hw1 hw2
  obtain ⟨mem2, t, q, ht, hq, hd2, hT, hO⟩ :=
    superblock_two_writes dev mem size base sb hd hr hm hv hs hc hp hseqA hseqB
  have hbuf : (superblock_write_twice dev base sb).hal.ctx.buffer = mem2 := hd2.mem_eq
  have hd2' : DevOK (superblock_write_twice dev base sb) mem2 size := hd2
  rw [hbuf]
  generalize superblock_write_twice dev base sb = dev2 at hd2'
  have hFq := superblock_committed_valid sb q size hm hv hs hc
  have hFq1 := superblock_committed_valid sb (q + 1) size hm hv hs hc
  have hs0 := committed_record_seq sb q
  have hs1 := committed_record_seq sb (q + 1)
  generalize ({ fram_superblock_write_temp sb q with commit := FRAM_SUPERBLOCK_COMMIT } :
    fram_superblock_t) = F0 at hO hFq hs0
  generalize ({ fram_superblock_write_temp sb (q + 1) with commit := FRAM_SUPERBLOCK_COMMIT } :
    fram_superblock_t) = F1 at hT hFq1 hs1
  have h472 : SUPERBLOCK_SIZE = 472 := rfl
  rcases Nat.le_one_iff_eq_zero_or_eq_one.mp ht with h0 | h1
  · subst h0
    simp only [Nat.mul_zero, Nat.add_zero, Nat.sub_zero, Nat.mul_one] at hT hO
    have hno : superblock_newest_offset mem2 base = base := by
      unfold superblock_newest_offset
      rw [hT, hO, hs0, hs1, if_pos (by omega)]
    have hns : superblock_newest_seq mem2 base = q + 1 := by
      unfold superblock_newest_seq
      rw [hT, hO, hs0, hs1, if_pos (by omega)]
    rw [hno, hns, hT, hO]
    refine ⟨hFq1, hFq, ?_⟩
    have hdp := mock_poke_ok dev2 mem2 size (base + SUPERBLOCK_COMMIT_OFFSET) 0 hd2'
    obtain ⟨dev3, _, hread⟩ := superblock_read_both _ _ size base hdp hr
    rw [hread]
    simp only [superblock_poked_invalid,
      superblock_poked_other mem2 base (base + SUPERBLOCK_SIZE) (Or.inr (Nat.le_refl _)),
      hT, hO, hFq, hFq1, hs0, hs1]
    simp [hs0]
  · subst h1
    simp only [Nat.mul_one, Nat.sub_self, Nat.mul_zero, Nat.add_zero] at hT hO
    have hno : superblock_newest_offset mem2 base = base + SUPERBLOCK_SIZE := by
      unfold superblock_newest_offset
      rw [hT, hO, hs0, hs1, if_neg (by omega)]
    have hns : superblock_newest_seq mem2 base = q + 1 := by
      unfold superblock_newest_seq
      rw [hT, hO, hs0, hs1, if_neg (by omega)]
    rw [hno, hns, hT, hO]
    refine ⟨hFq, hFq1, ?_⟩
    have hdp := mock_poke_ok dev2 mem2 size (base + SUPERBLOCK_SIZE + SUPERBLOCK_COMMIT_OFFSET)
      0 hd2'
    obtain ⟨dev3, _, hread⟩ := superblock_read_both _ _ size base hdp hr
    rw [hread]
    simp only [superblock_poked_invalid,
      superblock_poked_other mem2 (base + SUPERBLOCK_SIZE) base (Or.inl (Nat.le_refl _)),
      hT, hO, hFq, hFq1, hs0, hs1]
    simp [hs0]

/-- With copy A valid at the largest sequence number and copy B invalid, the
write goes to copy B with sequence number 0. -/
theorem superblock_wrap_first_write (dev : fram_dev_t) (mem : Nat → Nat) (size base : Nat)
    (sb : fram_superblock_t)
    (hd : DevOK dev mem size) (hr : base + 2 * SUPERBLOCK_SIZE ≤ size)
    (hm : sb.magic = FRAM_SUPERBLOCK_MAGIC) (hv : sb.version = FRAM_SUPERBLOCK_VERSION)
    (hs : sb.size_bytes = size) (hc : sb.count ≤ FRAM_PART_MAX)
    (hp : sb.parts.length = 448)
    (hA : fram_superblock_valid (superblock_at mem base) size = true)
    (hB : fram_superblock_valid (superblock_at mem (base + SUPERBLOCK_SIZE)) size = false)
    (hseq : (superblock_at mem base).seq = 4294967295) :
    ∃ mem1, (fram_superblock_write dev base sb).1 = ESP_OK ∧
      DevOK (fram_superblock_write dev base sb).2 mem1 size ∧
      superblock_at mem1 base = superblock_at mem base ∧
      superblock_at mem1 (base + SUPERBLOCK_SIZE) =
        { fram_superblock_write_temp sb 0 with commit := FRAM_SUPERBLOCK_COMMIT } := by
  obtain ⟨dev1, hw, hd1⟩ := superblock_write_both dev mem size base sb hd hr hm hv hs hc hp
  rw [hA, hB, select_true_false, hseq] at hd1
  have e : (4294967295 + 1) % U32 = 0 := by decide
  simp only [e, Nat.mul_one] at hd1
  obtain ⟨hT, hO⟩ := superblock_after_write mem size base sb 1 0 (by omega)
    hm hv hs hd.size_lt hc hp (by decide)
  simp only [Nat.mul_one, Nat.sub_self, Nat.mul_zero, Nat.add_zero] at hT hO
  rw [hw]
  exact ⟨_, rfl, hd1, hO, hT⟩

/-- With copy A valid at the largest sequence number and copy B valid with
sequence number 0, the write goes to copy B with sequence number 0 again. -/
theorem superblock_wrap_second_write (dev : fram_dev_t) (mem : Nat → Nat) (size base : Nat)
    (sb : fram_superblock_t)
    (hd : DevOK dev mem size) (hr : base + 2 * SUPERBLOCK_SIZE ≤ size)
    (hm : sb.magic = FRAM_SUPERBLOCK_MAGIC) (hv : sb.version = FRAM_SUPERBLOCK_VERSION)
    (hs : sb.size_bytes = size) (hc : sb.count ≤ FRAM_PART_MAX)
    (hp : sb.parts.length = 448)
    (hA : fram_superblock_valid (superblock_at mem base) size = true)
    (hB : fram_superblock_valid (superblock_at mem (base + SUPERBLOCK_SIZE)) size = true)
    (hseq : (superblock_at mem base).seq = 4294967295)
    (hseqB : (superblock_at mem (base + SUPERBLOCK_SIZE)).seq = 0) :
    ∃ mem1, (fram_superblock_write dev base sb).1 = ESP_OK ∧
      DevOK (fram_superblock_write dev base sb).2 mem1 size ∧
      superblock_at mem1 base = superblock_at mem base ∧
      superblock_at mem1 (base + SUPERBLOCK_SIZE) =
        { fram_superblock_write_temp sb 0 with commit := FRAM_SUPERBLOCK_COMMIT } := by
  obtain ⟨dev1, hw, hd1⟩ := superblock_write_both dev mem size base sb hd hr hm hv hs hc hp
  have hsel : fram_superblock_write_select true true (superblock_at mem base)
      (superblock_at mem (base + SUPERBLOCK_SIZE)) = (1, 0) := by
    unfold fram_superblock_write_select
    rw [hseq, hseqB]
    decide
  rw [hA, hB, hsel] at hd1
  simp only [Nat.mul_one] at hd1
  obtain ⟨hT, hO⟩ := superblock_after_write mem size base sb 1 0 (by omega)
    hm hv hs hd.size_lt hc hp (by decide)
  simp only [Nat.mul_one, Nat.sub_self, Nat.mul_zero, Nat.add_zero] at hT hO
  rw [hw]
  exact ⟨_, rfl, hd1, hO, hT⟩

/-! ### The example device whose copy A carries sequence number `2^32 - 1` -/

theorem example_wrap_dev_ok :
    DevOK example_wrap_dev (mem_write (fun _ => 0xFF) 0 example_old_superblock.to_bytes) 944 :=
  ⟨rfl, rfl, rfl, rfl, by decide, rfl⟩

theorem example_new_parts : example_new_superblock.parts.length = 448 :=
  List.length_replicate _ _

theorem example_old_wf : SbWF example_old_superblock :=
  temp_wf _ 4294967295 FRAM_SUPERBLOCK_COMMIT 944 rfl rfl rfl (by decide) (by decide)
    (List.length_replicate _ _) (by decide) (by decide)

theorem example_old_valid : fram_superblock_valid example_old_superblock 944 = true :=
  superblock_committed_valid _ 4294967295 944 rfl rfl rfl (by decide)

theorem example_wrap_copy_a :
    superblock_at (mem_write (fun _ => 0xFF) 0 example_old_superblock.to_bytes) 0
      = example_old_superblock := by
  unfold superblock_at
  have hl : example_old_superblock.to_bytes.length = SUPERBLOCK_SIZE :=
    to_bytes_length _ example_old_wf.parts example_old_wf.reserved
  rw [← hl, mem_read_write_same]
  exact of_bytes_to_bytes _ example_old_wf

theorem erased_copy_invalid (off size : Nat) :
    fram_superblock_valid (superblock_at (fun _ => 0xFF) off) size = false := by
  rw [superblock_at_fields]
  unfold fram_superblock_valid
  have h : le_val (mem_read (fun _ => 0xFF) off 4) ≠ FRAM_SUPERBLOCK_MAGIC := by
    simp [mem_read, le_val, FRAM_SUPERBLOCK_MAGIC, List.range_succ]
  simp [h]

theorem example_wrap_copy_b :
    fram_superblock_valid
      (superblock_at (mem_write (fun _ => 0xFF) 0 example_old_superblock.to_bytes)
        (0 + SUPERBLOCK_SIZE)) 944 = false := by
  have hl : example_old_superblock.to_bytes.length = SUPERBLOCK_SIZE :=
    to_bytes_length _ example_old_wf.parts example_old_wf.reserved
  have : superblock_at (mem_write (fun _ => 0xFF) 0 example_old_superblock.to_bytes)
      (0 + SUPERBLOCK_SIZE) = superblock_at (fun _ => 0xFF) (0 + SUPERBLOCK_SIZE) := by
    unfold superblock_at
    rw [mem_read_write_disjoint _ _ _ _ _ (Or.inr (by rw [hl]))]
  rw [this]
  exact erased_copy_invalid _ _

theorem example_old_seq : example_old_superblock.seq = 4294967295 :=
  committed_record_seq _ _

theorem superblock_write_twice_eq (dev : fram_dev_t) (base : Nat) (sb : fram_superblock_t) :
    superblock_write_twice dev base sb =
      (fram_superblock_write (fram_superblock_write dev base sb).2 base sb).2 := rfl

/-- Counterexample to C5 as stated: copy A of the example device is valid with
seq `2^32 - 1` and copy B is erased. The write of a new superblock (count 2)
returns `ESP_OK`, storing it in copy B with the wrapped seq 0, and the read that
follows returns the old record of copy A (count 1), not the one just written. -/
theorem superblock_write_published_counterexample :
    (fram_superblock_write example_wrap_dev 0 example_new_superblock).1 = ESP_OK ∧
    (fram_superblock_read
      (fram_superblock_write example_wrap_dev 0 example_new_superblock).2 0).1 = ESP_OK ∧
    (fram_superblock_read
      (fram_superblock_write example_wrap_dev 0 example_new_superblock).2 0).2.1
        = some example_old_superblock ∧
    example_old_superblock.count = 1 ∧ example_new_superblock.count = 2 := by
  obtain ⟨mem1, hw, hd1, hA1, hB1⟩ := superblock_wrap_first_write example_wrap_dev _ 944 0
    example_new_superblock example_wrap_dev_ok (by decide) rfl rfl rfl (by decide)
    example_new_parts (by rw [example_wrap_copy_a]; exact example_old_valid)
    example_wrap_copy_b (by rw [example_wrap_copy_a]; exact example_old_seq)
  obtain ⟨dev2, _, hread⟩ := superblock_read_both _ mem1 944 0 hd1 (by decide)
  have hF := superblock_committed_valid example_new_superblock 0 944 rfl rfl rfl (by decide)
  have hFs := committed_record_seq example_new_superblock 0
  rw [example_wrap_copy_a] at hA1
  refine ⟨hw, ?_, ?_, rfl, rfl⟩
  · rw [hread]
    simp only [hA1, hB1, hF, example_old_valid, hFs, example_old_seq]
    simp
  · rw [hread]
    simp only [hA1, hB1, hF, example_old_valid, hFs, example_old_seq]
    simp

/-- Witness for C5: on an erased device of 944 bytes the write succeeds and the
read that follows succeeds. -/
theorem superblock_write_published_witness :
    (fram_superblock_write (mock_dev (fun _ => 0xFF) 944) 0 example_new_superblock).1
        = ESP_OK ∧
    (fram_superblock_read
      (fram_superblock_write (mock_dev (fun _ => 0xFF) 944) 0 example_new_superblock).2 0).1
        = ESP_OK := by
  have hd : DevOK (mock_dev (fun _ => 0xFF) 944) (fun _ => 0xFF) 944 :=
    ⟨rfl, rfl, rfl, rfl, by decide, rfl⟩
  have hw : (fram_superblock_write (mock_dev (fun _ => 0xFF) 944) 0
      example_new_superblock).1 = ESP_OK := by
    obtain ⟨dev1, h, _⟩ := superblock_write_both _ _ 944 0 example_new_superblock hd
      (by decide) rfl rfl rfl (by decide) example_new_parts
    rw [h]
  exact ⟨hw, (superblock_write_published (mock_dev (fun _ => 0xFF) 944) (fun _ => 0xFF) 944 0
    example_new_superblock hd (by decide) rfl rfl rfl (by decide) example_new_parts hw
    (fun _ h => absurd h (by rw [erased_copy_invalid]; decide))
    (fun _ h => absurd h (by rw [erased_copy_invalid]; decide))).1⟩

/-- Counterexample to C8 as stated: on the example device (copy A valid with
seq `2^32 - 1`, copy B erased) two writes return `ESP_OK`, both storing seq 0 in
copy B. The higher seq, `2^32 - 1`, is that of copy A; after zeroing its commit
byte the read returns copy B with seq 0, not `2^32 - 2`. -/
theorem superblock_ab_commit_recovery_counterexample :
    (fram_superblock_write example_wrap_dev 0 example_new_superblock).1 = ESP_OK ∧
    (fram_superblock_write
      (fram_superblock_write example_wrap_dev 0 example_new_superblock).2 0
      example_new_superblock).1 = ESP_OK ∧
    superblock_newest_seq
      (superblock_write_twice example_wrap_dev 0 example_new_superblock).hal.ctx.buffer 0
        = 4294967295 ∧
    (fram_superblock_read
      (mock_poke (superblock_write_twice example_wrap_dev 0 example_new_superblock)
        (superblock_newest_offset
          (superblock_write_twice example_wrap_dev 0 example_new_superblock).hal.ctx.buffer 0
          + SUPERBLOCK_COMMIT_OFFSET) 0) 0).1 = ESP_OK ∧
    (fram_superblock_read
      (mock_poke (superblock_write_twice example_wrap_dev 0 example_new_superblock)
        (superblock_newest_offset
          (superblock_write_twice example_wrap_dev 0 example_new_superblock).hal.ctx.buffer 0
          + SUPERBLOCK_COMMIT_OFFSET) 0) 0).2.1.map (fun r => r.seq) = some 0 := by
  obtain ⟨mem1, hw1, hd1, hA1, hB1⟩ := superblock_wrap_first_write example_wrap_dev _ 944 0
    example_new_superblock example_wrap_dev_ok (by decide) rfl rfl rfl (by decide)
    example_new_parts (by rw [example_wrap_copy_a]; exact example_old_valid)
    example_wrap_copy_b (by rw [example_wrap_copy_a]; exact example_old_seq)
  have hF := superblock_committed_valid example_new_superblock 0 944 rfl rfl rfl (by decide)
  have hFs := committed_record_seq example_new_superblock 0
  rw [example_wrap_copy_a] at hA1
  obtain ⟨mem2, hw2, hd2, hA2, hB2⟩ := superblock_wrap_second_write _ mem1 944 0
    example_new_superblock hd1 (by decide) rfl rfl rfl (by decide)
    example_new_parts (by rw [hA1]; exact example_old_valid)
    (by rw [hB1]; exact hF) (by rw [hA1]; exact example_old_seq) (by rw [hB1]; exact hFs)
  rw [hA1] at hA2
  have hbuf : (superblock_write_twice example_wrap_dev 0 example_new_superblock).hal.ctx.buffer
      = mem2 := by
    rw [superblock_write_twice_eq]
    exact hd2.mem_eq
  have hd2' : DevOK (superblock_write_twice example_wrap_dev 0 example_new_superblock)
      mem2 944 := by
    rw [superblock_write_twice_eq]
    exact hd2
  generalize ({ fram_superblock_write_temp example_new_superblock 0 with
    commit := FRAM_SUPERBLOCK_COMMIT } : fram_superblock_t) = F0 at hB2 hF hFs
  have hno : superblock_newest_offset mem2 0 = 0 := by
    unfold superblock_newest_offset
    rw [hA2, hB2, example_old_seq, hFs]
    decide
  have hns : superblock_newest_seq mem2 0 = 4294967295 := by
    unfold superblock_newest_seq
    rw [hA2, hB2, example_old_seq, hFs]
    decide
  refine ⟨hw1, hw2, ?_, ?_⟩
  · rw [hbuf, hns]
  · rw [hbuf, hno]
    have hdp := mock_poke_ok _ mem2 944 (0 + SUPERBLOCK_COMMIT_OFFSET) 0 hd2'
    obtain ⟨dev3, _, hread⟩ := superblock_read_both _ _ 944 0 hdp (by decide)
    rw [hread]
    simp only [superblock_poked_invalid,
      superblock_poked_other mem2 0 (0 + SUPERBLOCK_SIZE) (Or.inr (Nat.le_refl _)),
      hB2, hF, hFs]
    simp [hFs]

/-- Witness for C8: on an erased device of 944 bytes two writes succeed and the
read after zeroing the newest commit byte succeeds. -/
theorem superblock_ab_commit_recovery_witness :
    (fram_superblock_write (mock_dev (fun _ => 0xFF) 944) 0 example_new_superblock).1
        = ESP_OK ∧
    (fram_superblock_write
      (fram_superblock_write (mock_dev (fun _ => 0xFF) 944) 0 example_new_superblock).2 0
      example_new_superblock).1 = ESP_OK ∧
    (fram_superblock_read
      (mock_poke (superblock_write_twice (mock_dev (fun _ => 0xFF) 944) 0 example_new_superblock)
        (superblock_newest_offset
          (superblock_write_twice (mock_dev (fun _ => 0xFF) 944) 0
            example_new_superblock).hal.ctx.buffer 0
          + SUPERBLOCK_COMMIT_OFFSET) 0) 0).1 = ESP_OK := by
  have hd : DevOK (mock_dev (fun _ => 0xFF) 944) (fun _ => 0xFF) 944 :=
    ⟨rfl, rfl, rfl, rfl, by decide, rfl⟩
  obtain ⟨dev1, h1, hd1⟩ := superblock_write_both _ _ 944 0 example_new_superblock hd
    (by decide) rfl rfl rfl (by decide) example_new_parts
  have hw1 : (fram_superblock_write (mock_dev (fun _ => 0xFF) 944) 0
      example_new_superblock).1 = ESP_OK := by rw [h1]
  have hw2 : (fram_superblock_write
      (fram_superblock_write (mock_dev (fun _ => 0xFF) 944) 0 example_new_superblock).2 0
      example_new_superblock).1 = ESP_OK := by
    rw [h1]
    obtain ⟨dev2, h2, _⟩ := superblock_write_both dev1 _ 944 0 example_new_superblock hd1
      (by decide) rfl rfl rfl (by decide) example_new_parts
    rw [h2]
  exact ⟨hw1, hw2, (superblock_ab_commit_recovery (mock_dev (fun _ => 0xFF) 944)
    (fun _ => 0xFF) 944 0 example_new_superblock hd (by decide) rfl rfl rfl (by decide)
    example_new_parts hw1 hw2
    (fun h => absurd h (by rw [erased_copy_invalid]; decide))
    (fun h => absurd h (by rw [erased_copy_invalid]; decide))).2.2.1⟩

/-! ## The partition manager on a working device -/

theorem fram_pm_read_ok (pm : fram_pm_t) (p : fram_partition_t) (pmem : Nat → Nat)
    (offset len : Nat) (h : PmOK pm p pmem) (hlen : 0 < len) (hr : offset + len ≤ p.size) :
    ∃ pm1, fram_pm_read pm (some p) offset len = (ESP_OK, mem_read pmem offset len, pm1)
      ∧ PmOK pm1 p pmem := by
  obtain ⟨hi, hw, mem, size, hd, hfit, hview⟩ := h
  have hsz := hd.size_lt
  have hU : (p.offset + offset) % U32 = p.offset + offset :=
    Nat.mod_eq_of_lt (by omega)
  obtain ⟨dev1, h1, hd1⟩ := fram_dev_read_ok pm.dev mem size (p.offset + offset) len hd hlen
    (by omega)
  refine ⟨{ pm with dev := dev1 }, ?_, ⟨hi, hw, mem, size, hd1, hfit, hview⟩⟩
  have hvr : fram_pm_is_valid_range p offset len = true := by
    unfold fram_pm_is_valid_range
    rw [if_neg (by omega), if_neg (by omega)]
  have hrd : mem_read mem (p.offset + offset) len = mem_read pmem offset len := by
    unfold mem_read
    apply List.map_congr_left
    intro i hi2
    have := List.mem_range.mp hi2
    rw [Nat.add_assoc]
    exact hview _ (by omega)
  simp only [fram_pm_read, hi, hvr, hU, h1, hrd, Bool.not_true, Bool.false_eq_true, if_false]

theorem fram_pm_write_ok (pm : fram_pm_t) (p : fram_partition_t) (pmem : Nat → Nat)
    (offset : Nat) (data : List Nat) (h : PmOK pm p pmem) (hlen : 0 < data.length)
    (hr : offset + data.length ≤ p.size) :
    ∃ pm1, fram_pm_write pm (some p) offset data = (ESP_OK, pm1)
      ∧ PmOK pm1 p (mem_write pmem offset data) := by
  obtain ⟨hi, hw, mem, size, hd, hfit, hview⟩ := h
  have hsz := hd.size_lt
  have hU : (p.offset + offset) % U32 = p.offset + offset :=
    Nat.mod_eq_of_lt (by omega)
  obtain ⟨dev1, h1, hd1⟩ := fram_dev_write_ok pm.dev mem size (p.offset + offset) data hd hlen
    (by omega)
  refine ⟨{ pm with dev := dev1 }, ?_, ⟨hi, hw, _, size, hd1, hfit, ?_⟩⟩
  · have hvr : fram_pm_is_valid_range p offset data.length = true := by
      unfold fram_pm_is_valid_range
      rw [if_neg (by omega), if_neg (by omega)]
    simp only [fram_pm_write, hi, hvr, hU, h1, hw, Bool.not_true, Bool.false_eq_true, if_false,
      ne_eq, not_true_eq_false]
  · intro i hi2
    simp only [mem_write_apply]
    by_cases hc : offset ≤ i ∧ i < offset + data.length
    · rw [if_pos (by omega), if_pos hc]
      congr 1
      omega
    · rw [if_neg (by omega), if_neg hc]
      exact hview i hi2

theorem fram_pm_read_bad (pm : fram_pm_t) (p : fram_partition_t) (pmem : Nat → Nat)
    (offset len : Nat) (h : PmOK pm p pmem) (hlen : 0 < len) (hr : ¬ offset + len ≤ p.size) :
    fram_pm_read pm (some p) offset len = (ESP_ERR_INVALID_SIZE, [], pm) := by
  have hvr : fram_pm_is_valid_range p offset len = false := by
    unfold fram_pm_is_valid_range
    rw [if_neg (by omega), if_pos (by omega)]
  simp only [fram_pm_read, h.initialized, hvr, Bool.not_true, Bool.false_eq_true, if_false,
    Bool.not_false, if_true]

theorem fram_pm_write_bad (pm : fram_pm_t) (p : fram_partition_t) (pmem : Nat → Nat)
    (offset : Nat) (data : List Nat) (h : PmOK pm p pmem) (hlen : 0 < data.length)
    (hr : ¬ offset + data.length ≤ p.size) :
    fram_pm_write pm (some p) offset data = (ESP_ERR_INVALID_SIZE, pm) := by
  have hvr : fram_pm_is_valid_range p offset data.length = false := by
    unfold fram_pm_is_valid_range
    rw [if_neg (by omega), if_pos (by omega)]
  simp only [fram_pm_write, h.initialized, h.writable, hvr, Bool.not_true, Bool.false_eq_true,
    if_false, Bool.not_false, if_true, ne_eq, not_true_eq_false]

/-- Poking a byte of the partition directly in the mock's backing buffer. -/
theorem pm_poke_ok (pm : fram_pm_t) (p : fram_partition_t) (pmem : Nat → Nat)
    (offset value : Nat) (h : PmOK pm p pmem) (_hr : offset < p.size) :
    PmOK { pm with dev := mock_poke pm.dev (p.offset + offset) value } p
      (mem_write pmem offset [value]) := by
  obtain ⟨hi, hw, mem, size, hd, hfit, hview⟩ := h
  refine ⟨hi, hw, _, size, mock_poke_ok pm.dev mem size (p.offset + offset) value hd, hfit, ?_⟩
  intro i hi2
  simp only [mem_write_apply, List.length_singleton]
  by_cases hc : offset ≤ i ∧ i < offset + 1
  · rw [if_pos (by omega), if_pos hc]
    congr 1
    omega
  · rw [if_neg (by omega), if_neg hc]
    exact hview i hi2

/-! ## Ring headers -/

theorem ring_head_bytes_length (h : fram_ring_header_t) : h.head_bytes.length = 20 := by
  simp [fram_ring_header_t.head_bytes, le_bytes_length]

theorem ring_to_bytes_length (h : fram_ring_header_t) : h.to_bytes.length = 24 := by
  simp [fram_ring_header_t.to_bytes, ring_head_bytes_length, le_bytes_length]

theorem ring_of_bytes_to_bytes (h : fram_ring_header_t)
    (h1 : h.magic < 4294967296) (h2 : h.seq < 4294967296)
    (h3 : h.ts_us < 18446744073709551616) (h4 : h.len < 65536) (h5 : h.reserved < 65536)
    (h6 : h.crc32 < 4294967296) :
    fram_ring_header_of_bytes h.to_bytes = h := by
  have e1 : slice h.to_bytes 0 4 = le_bytes 4 h.magic := by
    have := slice_mid [] (le_bytes 4 h.magic) (le_bytes 4 h.seq ++ (le_bytes 8 h.ts_us ++
      (le_bytes 2 h.len ++ (le_bytes 2 h.reserved ++ le_bytes 4 h.crc32)))) 0 4 rfl
      (le_bytes_length _ _)
    simpa [fram_ring_header_t.to_bytes, fram_ring_header_t.head_bytes] using this
  have e2 : slice h.to_bytes 4 4 = le_bytes 4 h.seq := by
    have := slice_mid (le_bytes 4 h.magic) (le_bytes 4 h.seq) (le_bytes 8 h.ts_us ++
      (le_bytes 2 h.len ++ (le_bytes 2 h.reserved ++ le_bytes 4 h.crc32))) 4 4
      (le_bytes_length _ _) (le_bytes_length _ _)
    simpa [fram_ring_header_t.to_bytes, fram_ring_header_t.head_bytes] using this
  have e3 : slice h.to_bytes 8 8 = le_bytes 8 h.ts_us := by
    have := slice_mid (le_bytes 4 h.magic ++ le_bytes 4 h.seq) (le_bytes 8 h.ts_us)
      (le_bytes 2 h.len ++ (le_bytes 2 h.reserved ++ le_bytes 4 h.crc32)) 8 8
      (by simp [le_bytes_length]) (le_bytes_length _ _)
    simpa [fram_ring_header_t.to_bytes, fram_ring_header_t.head_bytes] using this
  have e4 : slice h.to_bytes 16 2 = le_bytes 2 h.len := by
    have := slice_mid (le_bytes 4 h.magic ++ le_bytes 4 h.seq ++ le_bytes 8 h.ts_us)
      (le_bytes 2 h.len) (le_bytes 2 h.reserved ++ le_bytes 4 h.crc32) 16 2
      (by simp [le_bytes_length]) (le_bytes_length _ _)
    simpa [fram_ring_header_t.to_bytes, fram_ring_header_t.head_bytes] using this
  have e5 : slice h.to_bytes 18 2 = le_bytes 2 h.reserved := by
    have := slice_mid (le_bytes 4 h.magic ++ le_bytes 4 h.seq ++ le_bytes 8 h.ts_us
      ++ le_bytes 2 h.len) (le_bytes 2 h.reserved) (le_bytes 4 h.crc32) 18 2
      (by simp [le_bytes_length]) (le_bytes_length _ _)
    simpa [fram_ring_header_t.to_bytes, fram_ring_header_t.head_bytes] using this
  have e6 : slice h.to_bytes 20 4 = le_bytes 4 h.crc32 := by
    have := slice_mid h.head_bytes (le_bytes 4 h.crc32) [] 20 4
      (ring_head_bytes_length h) (le_bytes_length _ _)
    simpa [fram_ring_header_t.to_bytes] using this
  unfold fram_ring_header_of_bytes
  rw [e1, e2, e3, e4, e5, e6]
  simp only [le_val_le_bytes_4 _ h1, le_val_le_bytes_4 _ h2, le_val_le_bytes_8 _ h3,
    le_val_le_bytes_2 _ h4, le_val_le_bytes_2 _ h5, le_val_le_bytes_4 _ h6]

/-- The CRC of a record, whether its payload is empty or not. -/
theorem record_crc_eq (hb payload : List Nat) :
    (if payload.length > 0 then fram_crc32_le (fram_crc32_le 0 hb) payload
      else fram_crc32_le 0 hb) = fram_crc32_le 0 (hb ++ payload) := by
  by_cases h : payload.length > 0
  · rw [if_pos h, fram_crc32_le_append]
  · have : payload = [] := List.eq_nil_of_length_eq_zero (by omega)
    subst this
    simp

theorem ring_header_for_head (magic seq now : Nat) (payload : List Nat) :
    (ring_header_for magic seq now payload).head_bytes =
      le_bytes 4 magic ++ (le_bytes 4 seq ++ (le_bytes 8 (now % U64) ++
        (le_bytes 2 payload.length ++ le_bytes 2 0))) := by
  simp only [ring_header_for, fram_ring_header_t.head_bytes]

theorem ring_header_for_crc (magic seq now : Nat) (payload : List Nat) :
    (ring_header_for magic seq now payload).crc32 =
      fram_crc32_le 0 ((ring_header_for magic seq now payload).head_bytes ++ payload) := by
  rw [ring_header_for_head]
  simp only [ring_header_for]

theorem ring_header_for_roundtrip (magic seq now : Nat) (payload : List Nat)
    (hm : magic < U32) (hs : seq < U32) (hl : payload.length ≤ UINT16_MAX) :
    fram_ring_header_of_bytes (ring_header_for magic seq now payload).to_bytes
      = ring_header_for magic seq now payload := by
  apply ring_of_bytes_to_bytes
  · exact hm
  · exact hs
  · exact Nat.mod_lt _ (by decide)
  · show payload.length < 65536
    have : payload.length ≤ 65535 := hl
    omega
  · show (0 : Nat) < 65536
    decide
  · rw [ring_header_for_crc]
    exact fram_crc32_le_lt _ _

/-! ## Slot geometry -/

theorem ring_slot_offset_eq (ring : fram_ring_t) (p : fram_partition_t) (pm : fram_pm_t)
    (pmem : Nat → Nat) (g : RingGeom ring p) (h : PmOK pm p pmem) (slot : Nat)
    (hs : slot < ring.capacity) :
    fram_ring_slot_offset ring slot = slot * ring.entry_size ∧
    fram_ring_commit_offset ring slot
      = slot * ring.entry_size + RING_HEADER_SIZE + ring.max_payload ∧
    (fram_ring_slot_offset ring slot + RING_HEADER_SIZE) % U32
      = slot * ring.entry_size + RING_HEADER_SIZE ∧
    (slot + 1) * ring.entry_size ≤ p.size ∧ p.size < U32 := by
  obtain ⟨_, _, mem, size, hd, hfit, _⟩ := h
  have hsz := hd.size_lt
  have hes := g.entry_size
  have hle : (slot + 1) * ring.entry_size ≤ ring.capacity * ring.entry_size :=
    Nat.mul_le_mul_right _ hs
  have hfits := g.fits
  have h24 : RING_HEADER_SIZE = 24 := rfl
  have hexp : (slot + 1) * ring.entry_size = slot * ring.entry_size + ring.entry_size := by
    rw [Nat.add_mul, Nat.one_mul]
  have hlt : slot * ring.entry_size + ring.entry_size < U32 := by omega
  unfold fram_ring_commit_offset fram_ring_slot_offset
  rw [Nat.mod_eq_of_lt (by omega), Nat.mod_eq_of_lt (by omega), Nat.mod_eq_of_lt (by omega)]
  exact ⟨rfl, rfl, rfl, by omega, by omega⟩

theorem mem_read_one (mem : Nat → Nat) (addr : Nat) : mem_read mem addr 1 = [mem addr] := by
  simp [mem_read, List.range_succ]

/-- The two parts of a slot image. -/
theorem slot_rec_parts (pmem : Nat → Nat) (ring : fram_ring_t) (slot : Nat)
    (hdr : fram_ring_header_t) (payload : List Nat) (h : SlotRec pmem ring slot hdr payload) :
    mem_read pmem (slot * ring.entry_size) RING_HEADER_SIZE = hdr.to_bytes ∧
    mem_read pmem (slot * ring.entry_size + RING_HEADER_SIZE) payload.length = payload := by
  have him := h.image
  rw [mem_read_add] at him
  have hl : (mem_read pmem (slot * ring.entry_size) RING_HEADER_SIZE).length
      = hdr.to_bytes.length := by
    rw [mem_read_length, ring_to_bytes_length]; rfl
  exact List.append_inj him hl

/-- A slot whose commit byte is not `0xA5` does not validate. -/
theorem ring_validate_uncommitted (ring : fram_ring_t) (p : fram_partition_t) (pm : fram_pm_t)
    (pmem : Nat → Nat) (slot : Nat) (g : RingGeom ring p) (h : PmOK pm p pmem)
    (hs : slot < ring.capacity)
    (hc : pmem (slot * ring.entry_size + RING_HEADER_SIZE + ring.max_payload)
      ≠ FRAM_RING_COMMIT) :
    ∃ pm1, fram_ring_validate_slot ring pm slot = (ESP_ERR_NOT_FOUND, none, pm1)
      ∧ PmOK pm1 p pmem := by
  obtain ⟨ho, hco, hpo, hfit, hsz⟩ := ring_slot_offset_eq ring p pm pmem g h slot hs
  have hes := g.entry_size
  have hexp : (slot + 1) * ring.entry_size = slot * ring.entry_size + ring.entry_size := by
    rw [Nat.add_mul, Nat.one_mul]
  obtain ⟨pm1, h1, hok1⟩ := fram_pm_read_ok pm p pmem
    (slot * ring.entry_size + RING_HEADER_SIZE + ring.max_payload) 1 h (by decide) (by omega)
  refine ⟨pm1, ?_, hok1⟩
  unfold fram_ring_validate_slot fram_ring_read_commit
  simp only [g.part, hco, h1, mem_read_one, List.headD_cons, ne_eq, not_true_eq_false,
    false_or, hc, not_false_eq_true, if_true]

/-- A slot that holds a committed record written by `fram_ring_append`
validates with that record's header. -/
theorem ring_validate_rec (ring : fram_ring_t) (p : fram_partition_t) (pm : fram_pm_t)
    (pmem : Nat → Nat) (slot seq now : Nat) (payload : List Nat)
    (g : RingGeom ring p) (h : PmOK pm p pmem) (hs : slot < ring.capacity)
    (hseq : seq < U32) (hl : payload.length ≤ ring.max_payload)
    (hl16 : payload.length ≤ UINT16_MAX)
    (hrec : SlotRec pmem ring slot (ring_header_for ring.magic seq now payload) payload) :
    ∃ pm1, fram_ring_validate_slot ring pm slot =
        (ESP_OK, some (ring_header_for ring.magic seq now payload), pm1)
      ∧ PmOK pm1 p pmem := by
  obtain ⟨ho, hco, hpo, hfit, hsz⟩ := ring_slot_offset_eq ring p pm pmem g h slot hs
  have hes := g.entry_size
  have h24 : RING_HEADER_SIZE = 24 := rfl
  have hexp : (slot + 1) * ring.entry_size = slot * ring.entry_size + ring.entry_size := by
    rw [Nat.add_mul, Nat.one_mul]
  obtain ⟨hhdr, hpay⟩ := slot_rec_parts pmem ring slot _ payload hrec
  rw [ho] at hpo
  obtain ⟨pm1, h1, hok1⟩ := fram_pm_read_ok pm p pmem
    (slot * ring.entry_size + RING_HEADER_SIZE + ring.max_payload) 1 h (by decide) (by omega)
  obtain ⟨pm2, h2, hok2⟩ := fram_pm_read_ok pm1 p pmem
    (slot * ring.entry_size) RING_HEADER_SIZE hok1 (by decide) (by omega)
  have hrt := ring_header_for_roundtrip ring.magic seq now payload g.magic hseq hl16
  have hcrc := ring_header_for_crc ring.magic seq now payload
  have hmagic : (ring_header_for ring.magic seq now payload).magic = ring.magic := rfl
  have hlen : (ring_header_for ring.magic seq now payload).len = payload.length := rfl
  generalize ring_header_for ring.magic seq now payload = hdr at *
  by_cases hp0 : payload.length > 0
  · obtain ⟨pm3, h3, hok3⟩ := fram_pm_read_ok pm2 p pmem
      (slot * ring.entry_size + RING_HEADER_SIZE) payload.length hok2 hp0 (by omega)
    refine ⟨pm3, ?_, hok3⟩
    unfold fram_ring_validate_slot fram_ring_read_commit fram_ring_read_header
    simp only [g.part, hco, h1, mem_read_one, List.headD_cons, hrec.commit, ho, h2, hhdr, hrt,
      hmagic, hlen, hpo, h3, hpay, hp0, ne_eq, not_true_eq_false,
      or_self, if_false, if_true, Nat.not_lt.mpr hl]
    rw [fram_crc32_le_append, ← hcrc]
    simp
  · have hnil : payload = [] := List.eq_nil_of_length_eq_zero (by omega)
    refine ⟨pm2, ?_, hok2⟩
    unfold fram_ring_validate_slot fram_ring_read_commit fram_ring_read_header
    simp only [g.part, hco, h1, mem_read_one, List.headD_cons, hrec.commit, ho, h2, hhdr, hrt,
      hmagic, hlen, hp0, ne_eq, not_true_eq_false, or_self, if_false, if_true,
      Nat.not_lt.mpr hl]
    rw [hnil, List.append_nil] at hcrc
    simp [hcrc]

/-- The header built by `fram_ring_append`. -/
theorem ring_append_hdr_eq (magic seq now : Nat) (payload : List Nat)
    (hl16 : payload.length ≤ UINT16_MAX) :
    ({ magic := magic, seq := seq, ts_us := now % U64, len := payload.length % 65536,
       reserved := 0,
       crc32 :=
        if payload.length > 0 then
          fram_crc32_le (fram_crc32_le 0
            (fram_ring_header_t.head_bytes
              { magic := magic, seq := seq, ts_us := now % U64,
                len := payload.length % 65536, reserved := 0, crc32 := 0 })) payload
        else fram_crc32_le 0
            (fram_ring_header_t.head_bytes
              { magic := magic, seq := seq, ts_us := now % U64,
                len := payload.length % 65536, reserved := 0, crc32 := 0 }) } :
      fram_ring_header_t) = ring_header_for magic seq now payload := by
  have h16 : payload.length % 65536 = payload.length := by
    have : payload.length ≤ 65535 := hl16
    omega
  rw [record_crc_eq]
  simp only [h16, fram_ring_header_t.head_bytes, ring_header_for]

/-- The partition content after the four writes of `fram_ring_append` in the
slot at offset `so`. -/
theorem ring_append_media (pmem : Nat → Nat) (so mp : Nat) (hb payload : List Nat)
    (hhb : hb.length = 24) (hl : payload.length ≤ mp) :
    mem_read (mem_write (mem_write (mem_write (mem_write pmem (so + 24 + mp) [0]) so hb)
        (so + 24) payload) (so + 24 + mp) [165]) so (24 + payload.length) = hb ++ payload ∧
    (mem_write (mem_write (mem_write (mem_write pmem (so + 24 + mp) [0]) so hb)
        (so + 24) payload) (so + 24 + mp) [165]) (so + 24 + mp) = 165 ∧
    ∀ a, (a < so ∨ so + 24 + mp + 1 ≤ a) →
      (mem_write (mem_write (mem_write (mem_write pmem (so + 24 + mp) [0]) so hb)
        (so + 24) payload) (so + 24 + mp) [165]) a = pmem a := by
  refine ⟨?_, ?_, ?_⟩
  · rw [mem_read_write_disjoint _ _ _ _ _ (Or.inl (by omega)), mem_read_add]
    congr 1
    · rw [mem_read_write_disjoint _ _ _ _ _ (Or.inl (by omega)), ← hhb]
      exact mem_read_write_same _ _ _
    · exact mem_read_write_same _ _ _
  · have := mem_write_inside (mem_write (mem_write (mem_write pmem (so + 24 + mp) [0]) so hb)
        (so + 24) payload) (so + 24 + mp) [165] 0 (by decide)
    simpa using this
  · intro a ha
    rw [mem_write_outside _ _ _ _ (by simp only [List.length_singleton]; omega),
      mem_write_outside _ _ _ _ (by omega),
      mem_write_outside _ _ _ _ (by omega),
      mem_write_outside _ _ _ _ (by simp only [List.length_singleton]; omega)]

/-- `fram_ring_append` on a working partition: it succeeds, stores the record
in the head slot, leaves every byte outside that slot unchanged, and advances
the ring. -/
theorem ring_append_ok (ring : fram_ring_t) (p : fram_partition_t) (pm : fram_pm_t)
    (pmem : Nat → Nat) (payload : List Nat) (now : Nat)
    (g : RingGeom ring p) (h : PmOK pm p pmem) (hh : ring.head_slot < ring.capacity)
    (hl : payload.length ≤ ring.max_payload) (hl16 : payload.length ≤ UINT16_MAX) :
    ∃ pm1 pmem1,
      fram_ring_append ring pm payload now =
        (ESP_OK,
          (if ring.count < ring.capacity then
            { ring with
              head_seq := (ring.head_seq + 1) % U32
              head_slot := ((ring.head_slot + 1) % U32) % ring.capacity
              count := (ring.count + 1) % U32 }
          else
            { ring with
              head_seq := (ring.head_seq + 1) % U32
              head_slot := ((ring.head_slot + 1) % U32) % ring.capacity
              tail_slot := ((ring.tail_slot + 1) % U32) % ring.capacity }), pm1) ∧
      PmOK pm1 p pmem1 ∧
      SlotRec pmem1 ring ring.head_slot
        (ring_header_for ring.magic ring.head_seq now payload) payload ∧
      ∀ a, (a < ring.head_slot * ring.entry_size ∨
          (ring.head_slot + 1) * ring.entry_size ≤ a) → pmem1 a = pmem a := by
  obtain ⟨ho, hco, hpo, hfit, hsz⟩ := ring_slot_offset_eq ring p pm pmem g h ring.head_slot hh
  rw [ho] at hpo
  have hes := g.entry_size
  have h24 : RING_HEADER_SIZE = 24 := rfl
  have hexp : (ring.head_slot + 1) * ring.entry_size
      = ring.head_slot * ring.entry_size + ring.entry_size := by
    rw [Nat.add_mul, Nat.one_mul]
  have hhl := ring_to_bytes_length (ring_header_for ring.magic ring.head_seq now payload)
  obtain ⟨pm1, h1, hok1⟩ := fram_pm_write_ok pm p pmem
    (ring.head_slot * ring.entry_size + RING_HEADER_SIZE + ring.max_payload) [0] h
    (by decide) (by simp only [List.length_singleton]; omega)
  obtain ⟨pm2, h2, hok2⟩ := fram_pm_write_ok pm1 p _
    (ring.head_slot * ring.entry_size)
    (ring_header_for ring.magic ring.head_seq now payload).to_bytes hok1
    (by rw [hhl]; decide) (by rw [hhl]; omega)
  have hmedia := ring_append_media pmem (ring.head_slot * ring.entry_size) ring.max_payload
    (ring_header_for ring.magic ring.head_seq now payload).to_bytes payload hhl hl
  rw [← h24] at hmedia
  have hC : FRAM_RING_COMMIT = 165 := rfl
  rw [← hC] at hmedia
  by_cases hp0 : payload.length > 0
  · obtain ⟨pm3, h3, hok3⟩ := fram_pm_write_ok pm2 p _
      (ring.head_slot * ring.entry_size + RING_HEADER_SIZE) payload hok2 hp0 (by omega)
    obtain ⟨pm4, h4, hok4⟩ := fram_pm_write_ok pm3 p _
      (ring.head_slot * ring.entry_size + RING_HEADER_SIZE + ring.max_payload)
      [FRAM_RING_COMMIT] hok3 (by decide) (by simp only [List.length_singleton]; omega)
    have hhdr := ring_append_hdr_eq ring.magic ring.head_seq now payload hl16
    rw [if_pos hp0] at hhdr
    refine ⟨pm4, _, ?_, hok4, ⟨hmedia.1, hmedia.2.1⟩, ?_⟩
    · unfold fram_ring_append fram_ring_write_commit fram_ring_lock
      simp only [g.ready, g.mutex, mutex_take, g.part, hco, ho, hpo, h1,
        hhdr, h2, h3, h4, hp0, Nat.not_lt.mpr hl,
        Nat.not_lt.mpr hl16, Bool.not_true, Bool.false_eq_true, ne_eq, not_true_eq_false,
        or_self, and_self, if_false, if_true]
    · intro a ha
      exact hmedia.2.2 a (by omega)
  · have hnil : payload = [] := List.eq_nil_of_length_eq_zero (by omega)
    subst hnil
    rw [mem_write_nil] at hmedia
    obtain ⟨pm4, h4, hok4⟩ := fram_pm_write_ok pm2 p _
      (ring.head_slot * ring.entry_size + RING_HEADER_SIZE + ring.max_payload)
      [FRAM_RING_COMMIT] hok2 (by decide) (by simp only [List.length_singleton]; omega)
    have hhdr := ring_append_hdr_eq ring.magic ring.head_seq now [] hl16
    rw [if_neg hp0] at hhdr
    refine ⟨pm4, _, ?_, hok4, ⟨hmedia.1, hmedia.2.1⟩, ?_⟩
    · unfold fram_ring_append fram_ring_write_commit fram_ring_lock
      simp only [g.ready, g.mutex, mutex_take, g.part, hco, ho, h1,
        hhdr, h2, h4, hp0, Nat.not_lt.mpr hl,
        Nat.not_lt.mpr hl16, Bool.not_true, Bool.false_eq_true, ne_eq, not_true_eq_false,
        or_self, and_false, if_false, if_true]
    · intro a ha
      exact hmedia.2.2 a (by omega)

/-- Bytes of one slot lie outside every other slot. -/
theorem slot_disjoint (es s h i : Nat) (hne : s ≠ h) (hi : i < es) :
    s * es + i < h * es ∨ (h + 1) * es ≤ s * es + i := by
  rcases Nat.lt_or_gt_of_ne hne with hlt | hgt
  · left
    have := Nat.mul_le_mul_right es (Nat.succ_le_of_lt hlt)
    rw [Nat.succ_eq_add_one, Nat.add_mul, Nat.one_mul] at this
    omega
  · right
    have := Nat.mul_le_mul_right es (Nat.succ_le_of_lt hgt)
    rw [Nat.succ_eq_add_one] at this
    omega

/-- A stored record only depends on the bytes of its slot. -/
theorem slot_rec_frame (pmem pmem1 : Nat → Nat) (ring ring1 : fram_ring_t) (slot : Nat)
    (hdr : fram_ring_header_t) (payload : List Nat)
    (he : ring1.entry_size = ring.entry_size) (hm : ring1.max_payload = ring.max_payload)
    (hes : ring.entry_size = RING_HEADER_SIZE + ring.max_payload + 1)
    (hl : payload.length ≤ ring.max_payload)
    (hsame : ∀ i, i < ring.entry_size →
      pmem1 (slot * ring.entry_size + i) = pmem (slot * ring.entry_size + i))
    (h : SlotRec pmem ring slot hdr payload) : SlotRec pmem1 ring1 slot hdr payload := by
  constructor
  · rw [he, ← h.image]
    apply mem_read_congr
    intro i hi
    exact hsame i (by omega)
  · rw [he, hm, ← h.commit, Nat.add_assoc]
    exact hsame _ (by omega)

theorem mod_ne_of_window (c i n : Nat) (h1 : i < n) (h2 : n < i + c) : i % c ≠ n % c := by
  intro he
  have h0 : (n - i) % c = 0 := Nat.sub_mod_eq_zero_of_mod_eq he.symm
  rw [Nat.mod_eq_of_lt (by omega)] at h0
  omega

theorem succ_mod_mod (n c : Nat) : (n % c + 1) % c = (n + 1) % c := by
  rw [Nat.add_mod (n % c) 1 c, Nat.mod_mod, ← Nat.add_mod]

/-- The capacity of a ring on a working partition is below `2^32`. -/
theorem ring_capacity_lt (ring : fram_ring_t) (p : fram_partition_t) (pm : fram_pm_t)
    (pmem : Nat → Nat) (g : RingGeom ring p) (h : PmOK pm p pmem) : ring.capacity < U32 := by
  obtain ⟨_, _, _, _, hsz⟩ := ring_slot_offset_eq ring p pm pmem g h 0 g.capacity_pos
  have hf := g.fits
  have hes := g.entry_size
  have : ring.capacity * 1 ≤ ring.capacity * ring.entry_size :=
    Nat.mul_le_mul_left _ (by omega)
  omega

/-- One `fram_ring_append` on a working partition keeps the ring invariant. -/
theorem ring_append_step (ring : fram_ring_t) (p : fram_partition_t) (pm : fram_pm_t)
    (pmem : Nat → Nat) (es : List (List Nat × Nat)) (payload : List Nat) (now : Nat)
    (g : RingGeom ring p) (h : PmOK pm p pmem) (inv : RingAfter ring pmem es)
    (hl : payload.length ≤ ring.max_payload) (hl16 : payload.length ≤ UINT16_MAX) :
    ∃ ring1 pm1 pmem1,
      fram_ring_append ring pm payload now = (ESP_OK, ring1, pm1) ∧
      RingGeom ring1 p ∧ PmOK pm1 p pmem1 ∧ RingAfter ring1 pmem1 (es ++ [(payload, now)]) ∧
      ring1.capacity = ring.capacity ∧ ring1.max_payload = ring.max_payload ∧
      ring1.magic = ring.magic ∧ ring1.entry_size = ring.entry_size := by
  have hcpos := g.capacity_pos
  have hcU := ring_capacity_lt ring p pm pmem g h
  rw [U32_eq] at hcU
  have hh : ring.head_slot < ring.capacity := by
    rw [inv.head_slot]; exact Nat.mod_lt _ hcpos
  obtain ⟨pm1, pmem1, happ, hok, hrec, hframe⟩ :=
    ring_append_ok ring p pm pmem payload now g h hh hl hl16
  have hes := g.entry_size
  have hlen : (es ++ [(payload, now)]).length = es.length + 1 := by simp
  have hhs := inv.head_slot
  have hsq := inv.head_seq
  have hct : (es.length ≤ ring.capacity ∧ ring.count = es.length) ∨
      (ring.capacity < es.length ∧ ring.count = ring.capacity) := by
    have := inv.count
    rw [Nat.min_def] at this
    split_ifs at this with hle
    · exact Or.inl ⟨hle, this⟩
    · exact Or.inr ⟨by omega, this⟩
  have htl := inv.tail_slot
  have hhs1 : ((ring.head_slot + 1) % U32) % ring.capacity = (es.length + 1) % ring.capacity := by
    rw [U32_eq, Nat.mod_eq_of_lt (show ring.head_slot + 1 < 4294967296 by omega), hhs,
      succ_mod_mod]
  have hsq1 : (ring.head_seq + 1) % U32 = (es.length + 1) % U32 := by
    rw [hsq, U32_eq]; omega
  have hb : ∀ i, i < (es ++ [(payload, now)]).length →
      ((es ++ [(payload, now)]).getD i ([], 0)).1.length ≤ ring.max_payload ∧
      ((es ++ [(payload, now)]).getD i ([], 0)).1.length ≤ UINT16_MAX := by
    intro i hi
    rw [hlen] at hi
    by_cases hin : i < es.length
    · rw [List.getD_append _ _ _ _ hin]
      exact inv.bounded i hin
    · have : i = es.length := by omega
      subst this
      rw [List.getD_append_right _ _ _ _ (Nat.le_refl _)]
      simpa using ⟨hl, hl16⟩
  have hw : ∀ i, i < (es ++ [(payload, now)]).length →
      (es ++ [(payload, now)]).length ≤ i + ring.capacity →
      SlotRec pmem1 ring (i % ring.capacity)
        (ring_header_for ring.magic (i % U32) ((es ++ [(payload, now)]).getD i ([], 0)).2
          ((es ++ [(payload, now)]).getD i ([], 0)).1)
        ((es ++ [(payload, now)]).getD i ([], 0)).1 := by
    intro i hi hwin
    rw [hlen] at hi hwin
    by_cases hin : i < es.length
    · rw [List.getD_append _ _ _ _ hin]
      apply slot_rec_frame pmem pmem1 ring ring _ _ _ rfl rfl hes (inv.bounded i hin).1 _
        (inv.window i hin (by omega))
      intro k hk
      apply hframe
      rw [hhs]
      exact slot_disjoint _ _ _ _ (mod_ne_of_window _ _ _ hin (by omega)) hk
    · have : i = es.length := by omega
      subst this
      rw [List.getD_append_right _ _ _ _ (Nat.le_refl _)]
      simp only [Nat.sub_self, List.getD_cons_zero]
      rw [← hhs, ← hsq]
      exact hrec
  have hf : ∀ j, (es ++ [(payload, now)]).length ≤ j → j < ring.capacity →
      pmem1 (j * ring.entry_size + RING_HEADER_SIZE + ring.max_payload) ≠ FRAM_RING_COMMIT := by
    intro j hj hjc
    rw [hlen] at hj
    have hne : j ≠ ring.head_slot := by
      rw [hhs, Nat.mod_eq_of_lt (by omega)]; omega
    rw [Nat.add_assoc, hframe _ (slot_disjoint _ _ _ _ hne (by omega)), ← Nat.add_assoc]
    exact inv.fresh j (by omega) hjc
  by_cases hc : ring.count < ring.capacity
  · rw [if_pos hc] at happ
    refine ⟨_, pm1, pmem1, happ,
      ⟨g.part, g.entry_size, g.capacity_pos, g.fits, g.magic, g.mutex, g.ready⟩, hok,
      ⟨?_, ?_, ?_, ?_, hb, fun i hi hwin => ⟨(hw i hi hwin).image, (hw i hi hwin).commit⟩, hf⟩,
      rfl, rfl, rfl, rfl⟩
    · rw [hlen]; exact hsq1
    · rw [hlen]; exact hhs1
    · show (ring.count + 1) % U32 = min (es ++ [(payload, now)]).length ring.capacity
      rw [hlen, U32_eq, Nat.min_def]
      split_ifs <;> omega
    · show ring.tail_slot = if (es ++ [(payload, now)]).length ≤ ring.capacity then 0
        else (es ++ [(payload, now)]).length % ring.capacity
      rw [hlen, htl]
      have : es.length < ring.capacity := by omega
      rw [if_pos (show es.length ≤ ring.capacity by omega),
        if_pos (show es.length + 1 ≤ ring.capacity by omega)]
  · rw [if_neg hc] at happ
    refine ⟨_, pm1, pmem1, happ,
      ⟨g.part, g.entry_size, g.capacity_pos, g.fits, g.magic, g.mutex, g.ready⟩, hok,
      ⟨?_, ?_, ?_, ?_, hb, fun i hi hwin => ⟨(hw i hi hwin).image, (hw i hi hwin).commit⟩, hf⟩,
      rfl, rfl, rfl, rfl⟩
    · rw [hlen]; exact hsq1
    · rw [hlen]; exact hhs1
    · show ring.count = min (es ++ [(payload, now)]).length ring.capacity
      rw [hlen, Nat.min_def]
      split_ifs <;> omega
    · show ((ring.tail_slot + 1) % U32) % ring.capacity =
        if (es ++ [(payload, now)]).length ≤ ring.capacity then 0
        else (es ++ [(payload, now)]).length % ring.capacity
      have hge : ring.capacity ≤ es.length := by omega
      have ht : ring.tail_slot = es.length % ring.capacity := by
        rw [htl]
        split_ifs with hle
        · have : es.length = ring.capacity := by omega
          rw [this, Nat.mod_self]
        · rfl
      have hlt := Nat.mod_lt es.length hcpos
      rw [hlen, if_neg (show ¬ es.length + 1 ≤ ring.capacity by omega), U32_eq,
        Nat.mod_eq_of_lt (show ring.tail_slot + 1 < 4294967296 by omega), ht, succ_mod_mod]

/-- Slot validation only looks at the geometry fields of the ring. -/
theorem ring_validate_congr (r1 r2 : fram_ring_t) (pm : fram_pm_t) (slot : Nat)
    (h1 : r1.part = r2.part) (h2 : r1.entry_size = r2.entry_size)
    (h3 : r1.max_payload = r2.max_payload) (h4 : r1.magic = r2.magic) :
    fram_ring_validate_slot r1 pm slot = fram_ring_validate_slot r2 pm slot := by
  unfold fram_ring_validate_slot fram_ring_read_commit fram_ring_read_header
    fram_ring_commit_offset fram_ring_slot_offset
  simp only [h1, h2, h3, h4]

/-- Slot validation against a view of the slots. -/
theorem ring_validate_view (ring : fram_ring_t) (p : fram_partition_t) (pm : fram_pm_t)
    (pmem : Nat → Nat) (V : Nat → Option Nat) (slot : Nat) (g : RingGeom ring p)
    (h : PmOK pm p pmem) (hV : RingView ring pmem V) (hs : slot < ring.capacity) :
    ∃ pm1, PmOK pm1 p pmem ∧
      ((∃ q hdr, V slot = some q ∧ hdr.seq = q ∧
          fram_ring_validate_slot ring pm slot = (ESP_OK, some hdr, pm1)) ∨
       (V slot = none ∧
          fram_ring_validate_slot ring pm slot = (ESP_ERR_NOT_FOUND, none, pm1))) := by
  cases hv : V slot with
  | none =>
    obtain ⟨pm1, h1, hok⟩ := ring_validate_uncommitted ring p pm pmem slot g h hs
      ((hV slot hs).2 hv)
    exact ⟨pm1, hok, Or.inr ⟨rfl, h1⟩⟩
  | some q =>
    obtain ⟨hq, now, payload, hl, hl16, hrec⟩ := (hV slot hs).1 q hv
    obtain ⟨pm1, h1, hok⟩ := ring_validate_rec ring p pm pmem slot q now payload g h hs hq hl
      hl16 hrec
    exact ⟨pm1, hok, Or.inl ⟨q, _, rfl, rfl, h1⟩⟩

/-- The first recovery loop computes the scan of the view. -/
theorem ring_scan_eq (ring ringG : fram_ring_t) (p : fram_partition_t) (pmem : Nat → Nat)
    (V : Nat → Option Nat) (g : RingGeom ringG p)
    (h1 : ring.part = ringG.part) (h2 : ring.entry_size = ringG.entry_size)
    (h3 : ring.max_payload = ringG.max_payload) (h4 : ring.magic = ringG.magic)
    (hV : RingView ringG pmem V) :
    ∀ (slots : List Nat) (st : ring_scan_t) (pm : fram_pm_t),
      (∀ s ∈ slots, s < ringG.capacity) → PmOK pm p pmem →
      ∃ pm1, fram_ring_init_scan ring slots st pm = (ring_scan_view V slots st, pm1) ∧
        PmOK pm1 p pmem := by
  intro slots
  induction slots with
  | nil =>
    intro st pm _ h
    exact ⟨pm, rfl, h⟩
  | cons slot rest ih =>
    intro st pm hs h
    have hslot := hs slot (List.mem_cons_self _ _)
    have hrest : ∀ s ∈ rest, s < ringG.capacity := fun s hm => hs s (List.mem_cons_of_mem _ hm)
    obtain ⟨pm1, hok, hcase⟩ := ring_validate_view ringG p pm pmem V slot g h hV hslot
    rw [← ring_validate_congr ring ringG pm slot h1 h2 h3 h4] at hcase
    rcases hcase with ⟨q, hdr, hv, hq, hval⟩ | ⟨hv, hval⟩
    · subst hq
      simp only [fram_ring_init_scan, ring_scan_view, hval, hv]
      split_ifs
      · exact ih _ pm1 hrest hok
      · exact ih _ pm1 hrest hok
    · simp only [fram_ring_init_scan, ring_scan_view, hval, hv]
      exact ih _ pm1 hrest hok

/-- The second recovery loop computes the walk over the view. -/
theorem ring_walk_eq (ring ringG : fram_ring_t) (p : fram_partition_t) (pmem : Nat → Nat)
    (V : Nat → Option Nat) (g : RingGeom ringG p)
    (h1 : ring.part = ringG.part) (h2 : ring.entry_size = ringG.entry_size)
    (h3 : ring.max_payload = ringG.max_payload) (h4 : ring.magic = ringG.magic)
    (h5 : ring.capacity = ringG.capacity)
    (hV : RingView ringG pmem V) :
    ∀ (fuel : Nat) (pm : fram_pm_t) (run_len expected_seq slot : Nat),
      slot < ringG.capacity → PmOK pm p pmem →
      ∃ pm1, fram_ring_init_walk ring fuel pm run_len expected_seq slot =
          (ring_walk_view V ringG.capacity fuel run_len expected_seq slot, pm1) ∧
        PmOK pm1 p pmem := by
  intro fuel
  induction fuel with
  | zero =>
    intro pm run_len expected_seq slot _ h
    exact ⟨pm, rfl, h⟩
  | succ fuel ih =>
    intro pm run_len expected_seq slot hslot h
    by_cases hr : run_len < ringG.capacity
    · obtain ⟨pm1, hok, hcase⟩ := ring_validate_view ringG p pm pmem V slot g h hV hslot
      rw [← ring_validate_congr ring ringG pm slot h1 h2 h3 h4] at hcase
      rcases hcase with ⟨q, hdr, hv, hq, hval⟩ | ⟨hv, hval⟩
      · subst hq
        simp only [fram_ring_init_walk, ring_walk_view, hval, hv, h5, hr, if_true]
        by_cases he : hdr.seq = expected_seq
        · simp only [he, ne_eq, not_true_eq_false, if_false]
          by_cases hc : (run_len + 1) % U32 ≥ ringG.capacity
          · simp only [hc, if_true]
            exact ⟨pm1, rfl, hok⟩
          · simp only [hc, if_false]
            exact ih pm1 _ _ _ (Nat.mod_lt _ g.capacity_pos) hok
        · simp only [ne_eq, he, not_false_eq_true, if_true]
          exact ⟨pm1, rfl, hok⟩
      · simp only [fram_ring_init_walk, ring_walk_view, hval, hv, h5, hr, if_true]
        exact ⟨pm1, rfl, hok⟩
    · simp only [fram_ring_init_walk, ring_walk_view, h5, hr, if_false]
      exact ⟨pm, rfl, h⟩

/-- What the scan of a view returns: a slot of the scanned set holding the
largest sequence number seen. -/
theorem ring_scan_view_spec (V : Nat → Option Nat) (S : Nat → Prop) :
    ∀ (slots : List Nat) (st : ring_scan_t), (∀ s ∈ slots, S s) →
      (st.found = true → S st.highest_slot ∧ V st.highest_slot = some st.highest_seq) →
      ((ring_scan_view V slots st).found = true →
        S (ring_scan_view V slots st).highest_slot ∧
        V (ring_scan_view V slots st).highest_slot
          = some (ring_scan_view V slots st).highest_seq) ∧
      (st.found = true → (ring_scan_view V slots st).found = true ∧
        st.highest_seq ≤ (ring_scan_view V slots st).highest_seq) ∧
      (∀ s ∈ slots, ∀ q, V s = some q → (ring_scan_view V slots st).found = true ∧
        q ≤ (ring_scan_view V slots st).highest_seq) ∧
      (st.found = false → (∀ s ∈ slots, V s = none) →
        (ring_scan_view V slots st).found = false) := by
  intro slots
  induction slots with
  | nil =>
    intro st _ hst
    refine ⟨hst, fun h => ⟨h, Nat.le_refl _⟩, ?_, fun h _ => h⟩
    intro s hs
    exact absurd hs (List.not_mem_nil _)
  | cons slot rest ih =>
    intro st hS hst
    have hrest : ∀ s ∈ rest, S s := fun s hm => hS s (List.mem_cons_of_mem _ hm)
    cases hv : V slot with
    | none =>
      simp only [ring_scan_view, hv]
      obtain ⟨i1, i2, i3, i4⟩ := ih st hrest hst
      refine ⟨i1, i2, ?_, ?_⟩
      · intro s hs q hq
        rcases List.mem_cons.mp hs with rfl | hm
        · rw [hv] at hq; cases hq
        · exact i3 s hm q hq
      · intro hf hall
        exact i4 hf (fun s hm => hall s (List.mem_cons_of_mem _ hm))
    | some q =>
      simp only [ring_scan_view, hv]
      by_cases hc : (!st.found || decide (q > st.highest_seq)) = true
      · rw [if_pos hc]
        obtain ⟨i1, i2, i3, _⟩ := ih { highest_seq := q, highest_slot := slot, found := true }
          hrest (fun _ => ⟨hS slot (List.mem_cons_self _ _), hv⟩)
        have i2t := i2 rfl
        refine ⟨i1, ?_, ?_, ?_⟩
        · intro hf
          refine ⟨i2t.1, ?_⟩
          simp only [hf, Bool.not_true, Bool.false_or, decide_eq_true_eq] at hc
          exact Nat.le_trans (Nat.le_of_lt hc) i2t.2
        · intro s hs q2 hq
          rcases List.mem_cons.mp hs with rfl | hm
          · rw [hv] at hq
            cases hq
            exact i2t
          · exact i3 s hm q2 hq
        · intro _ hall
          have := hall slot (List.mem_cons_self _ _)
          rw [hv] at this; cases this
      · rw [if_neg hc]
        simp only [Bool.or_eq_true, Bool.not_eq_true', decide_eq_true_eq, not_or,
          Bool.not_eq_false, Nat.not_lt] at hc
        obtain ⟨i1, i2, i3, _⟩ := ih st hrest hst
        have i2t := i2 hc.1
        refine ⟨i1, i2, ?_, ?_⟩
        · intro s hs q2 hq
          rcases List.mem_cons.mp hs with rfl | hm
          · rw [hv] at hq
            cases hq
            exact ⟨i2t.1, Nat.le_trans hc.2 i2t.2⟩
          · exact i3 s hm q2 hq
        · intro hf
          rw [hc.1] at hf; cases hf

/-- The geometry `fram_ring_init` computes is consistent. -/
theorem ring_empty_geom (K : Kconfig) (p : fram_partition_t) (cfg : fram_ring_config_t)
    (hle : cfg.max_payload ≤ K.FRAM_RING_MAX_PAYLOAD)
    (hK : K.FRAM_RING_MAX_PAYLOAD + RING_HEADER_SIZE + 1 < U32) (hmagic : cfg.magic < U32)
    (hcap : RING_HEADER_SIZE + cfg.max_payload + 1 ≤ p.size) :
    RingGeom (ring_empty p cfg) p ∧
    (ring_empty p cfg).entry_size = RING_HEADER_SIZE + cfg.max_payload + 1 := by
  have hes : (RING_HEADER_SIZE + cfg.max_payload + 1) % U32
      = RING_HEADER_SIZE + cfg.max_payload + 1 := Nat.mod_eq_of_lt (by omega)
  refine ⟨⟨rfl, hes, ?_, ?_, hmagic, rfl, rfl⟩, hes⟩
  · show 0 < p.size / ((RING_HEADER_SIZE + cfg.max_payload + 1) % U32)
    rw [hes]
    exact Nat.div_pos hcap (by omega)
  · exact Nat.div_mul_le_self _ _

/-- `fram_ring_init` on a working partition whose slots are described by the
view `V`. -/
theorem ring_init_view (K : Kconfig) (ring0 : fram_ring_t) (pm : fram_pm_t)
    (p : fram_partition_t) (pmem : Nat → Nat) (cfg : fram_ring_config_t)
    (V : Nat → Option Nat)
    (hfind : fram_pm_find pm cfg.partition_name = some p) (h : PmOK pm p pmem)
    (hmp : 0 < cfg.max_payload) (hle : cfg.max_payload ≤ K.FRAM_RING_MAX_PAYLOAD)
    (hK : K.FRAM_RING_MAX_PAYLOAD + RING_HEADER_SIZE + 1 < U32) (hmagic : cfg.magic < U32)
    (hcap : RING_HEADER_SIZE + cfg.max_payload + 1 ≤ p.size)
    (hV : RingView (ring_empty p cfg) pmem V) :
    ∃ pm1, fram_ring_init K ring0 pm cfg = (ESP_OK, ring_recovered p cfg V, pm1) ∧
      PmOK pm1 p pmem := by
  obtain ⟨g, hes⟩ := ring_empty_geom K p cfg hle hK hmagic hcap
  have hc := g.capacity_pos
  have hc0 : ¬ p.size / ((RING_HEADER_SIZE + cfg.max_payload + 1) % U32) = 0 :=
    Nat.pos_iff_ne_zero.mp hc
  obtain ⟨pm1, hs, hok1⟩ := ring_scan_eq
    { part := some p, entry_size := (RING_HEADER_SIZE + cfg.max_payload + 1) % U32,
      max_payload := cfg.max_payload,
      capacity := p.size / ((RING_HEADER_SIZE + cfg.max_payload + 1) % U32),
      magic := cfg.magic, head_slot := 0, tail_slot := 0, head_seq := 0, count := 0,
      mutex := SemaphoreHandle_t.free, ready := false }
    (ring_empty p cfg) p pmem V g rfl rfl rfl rfl hV
    (List.range (p.size / ((RING_HEADER_SIZE + cfg.max_payload + 1) % U32)))
    { highest_seq := 0, highest_slot := 0, found := false } pm
    (fun s hs => List.mem_range.mp hs) h
  unfold fram_ring_init
  simp only [hfind]
  rw [if_neg (by omega), if_neg hc0]
  simp only [hs]
  by_cases hf : (ring_scan_view V
      (List.range (p.size / ((RING_HEADER_SIZE + cfg.max_payload + 1) % U32)))
      { highest_seq := 0, highest_slot := 0, found := false }).found = true
  · have hslot : ((ring_scan_view V
        (List.range (p.size / ((RING_HEADER_SIZE + cfg.max_payload + 1) % U32)))
        { highest_seq := 0, highest_slot := 0, found := false }).highest_slot)
        < (ring_empty p cfg).capacity := by
      exact ((ring_scan_view_spec V (fun s => s < (ring_empty p cfg).capacity) _
        { highest_seq := 0, highest_slot := 0, found := false }
        (fun s hs => List.mem_range.mp hs) (fun hx => Bool.noConfusion hx)).1 hf).1
    obtain ⟨pm2, hw, hok2⟩ := ring_walk_eq
      { part := some p, entry_size := (RING_HEADER_SIZE + cfg.max_payload + 1) % U32,
        max_payload := cfg.max_payload,
        capacity := p.size / ((RING_HEADER_SIZE + cfg.max_payload + 1) % U32),
        magic := cfg.magic, head_slot := 0, tail_slot := 0, head_seq := 0, count := 0,
        mutex := SemaphoreHandle_t.free, ready := false }
      (ring_empty p cfg) p pmem V g rfl rfl rfl rfl rfl hV
      (p.size / ((RING_HEADER_SIZE + cfg.max_payload + 1) % U32)) pm1 0
      (ring_scan_view V
        (List.range (p.size / ((RING_HEADER_SIZE + cfg.max_payload + 1) % U32)))
        { highest_seq := 0, highest_slot := 0, found := false }).highest_seq
      _ hslot hok1
    refine ⟨pm2, ?_, hok2⟩
    simp only [hf, hw, Bool.not_true, Bool.false_eq_true, if_false]
    simp only [ring_recovered, ring_empty, hf, Bool.not_true, Bool.false_eq_true, if_false]
  · refine ⟨pm1, ?_, hok1⟩
    simp only [hf, Bool.not_eq_true, Bool.not_false, Bool.not_eq_true', if_true]
    simp only [ring_recovered, ring_empty, hf, Bool.not_false, if_true]

/-- Reading the payload of a slot that holds a committed record. -/
theorem ring_read_slot_rec (ring : fram_ring_t) (p : fram_partition_t) (pm : fram_pm_t)
    (pmem : Nat → Nat) (slot seq now : Nat) (payload buf : List Nat) (cap s0 t0 : Nat)
    (g : RingGeom ring p) (h : PmOK pm p pmem) (hs : slot < ring.capacity)
    (hseq : seq < U32) (hl : payload.length ≤ ring.max_payload)
    (hl16 : payload.length ≤ UINT16_MAX) (hcap : payload.length ≤ cap)
    (hrec : SlotRec pmem ring slot (ring_header_for ring.magic seq now payload) payload) :
    ∃ pm1, fram_ring_read_slot_payload ring pm slot
        { payload := some buf, len := some cap, seq := some s0, ts_us := some t0 } =
        (ESP_OK, { payload := some (payload ++ buf.drop payload.length),
                   len := some payload.length, seq := some seq, ts_us := some (now % U64) },
          pm1) ∧ PmOK pm1 p pmem := by
  obtain ⟨pm1, hv, hok1⟩ := ring_validate_rec ring p pm pmem slot seq now payload g h hs hseq
    hl hl16 hrec
  obtain ⟨ho, hco, hpo, hfit, hsz⟩ := ring_slot_offset_eq ring p pm pmem g h slot hs
  have hes := g.entry_size
  have hexp : (slot + 1) * ring.entry_size = slot * ring.entry_size + ring.entry_size := by
    rw [Nat.add_mul, Nat.one_mul]
  have hlen : (ring_header_for ring.magic seq now payload).len = payload.length := rfl
  have hsq : (ring_header_for ring.magic seq now payload).seq = seq := rfl
  have hts : (ring_header_for ring.magic seq now payload).ts_us = now % U64 := rfl
  by_cases hp0 : payload.length > 0
  · obtain ⟨pm2, hr, hok2⟩ := fram_pm_read_ok pm1 p pmem
      (slot * ring.entry_size + RING_HEADER_SIZE) payload.length hok1 hp0 (by omega)
    rw [(slot_rec_parts pmem ring slot _ payload hrec).2] at hr
    refine ⟨pm2, ?_, hok2⟩
    unfold fram_ring_read_slot_payload
    simp only [hv, hlen, hsq, hts, hpo, g.part, hr, Nat.not_lt.mpr hcap, hp0, if_true,
      if_false, ne_eq, not_true_eq_false, Option.isSome_some]
  · refine ⟨pm1, ?_, hok1⟩
    have hnil : payload = [] := List.eq_nil_of_length_eq_zero (by omega)
    subst hnil
    unfold fram_ring_read_slot_payload
    simp only [hv, hlen, hsq, hts, Nat.not_lt.mpr hcap, hp0, if_true,
      if_false, Option.isSome_some, List.length_nil, List.drop_zero, List.nil_append,
      Nat.not_lt_zero, gt_iff_lt, Nat.lt_irrefl]

/-- The slot before `n % c` is the slot of record `n - 1`. -/
theorem pred_slot_eq (n c : Nat) (hn : 1 ≤ n) (hc : 0 < c) (hcU : c + c ≤ U32) :
    (((n % c + c) % U32 + U32 - 1) % U32) % c = (n - 1) % c := by
  have hlt := Nat.mod_lt n hc
  rw [U32_eq] at hcU ⊢
  rw [Nat.mod_eq_of_lt (show n % c + c < 4294967296 by omega)]
  have h1 : n % c + c + 4294967296 - 1 = (n % c + c - 1) + 4294967296 := by omega
  rw [h1, Nat.add_mod_right, Nat.mod_eq_of_lt (show n % c + c - 1 < 4294967296 by omega)]
  have h2 := succ_mod_mod (n - 1) c
  rw [Nat.sub_add_cancel hn] at h2
  have hlt2 := Nat.mod_lt (n - 1) hc
  by_cases hr : (n - 1) % c + 1 < c
  · rw [Nat.mod_eq_of_lt hr] at h2
    rw [← h2]
    have : (n - 1) % c + 1 + c - 1 = (n - 1) % c + c := by omega
    rw [this, Nat.add_mod_right, Nat.mod_mod]
  · have he : (n - 1) % c + 1 = c := by omega
    rw [he, Nat.mod_self] at h2
    rw [← h2, Nat.zero_add, Nat.mod_eq_of_lt (by omega)]
    omega

/-- A ring on a working partition has at most `2^32 / 25` slots. -/
theorem ring_capacity_small (ring : fram_ring_t) (p : fram_partition_t) (pm : fram_pm_t)
    (pmem : Nat → Nat) (g : RingGeom ring p) (h : PmOK pm p pmem) :
    ring.capacity + ring.capacity ≤ U32 := by
  obtain ⟨_, _, _, _, hsz⟩ := ring_slot_offset_eq ring p pm pmem g h 0 g.capacity_pos
  have hf := g.fits
  have hes := g.entry_size
  have h24 : RING_HEADER_SIZE = 24 := rfl
  have : ring.capacity * 2 ≤ ring.capacity * ring.entry_size :=
    Nat.mul_le_mul_left _ (by omega)
  omega

/-- A run of appends of payloads within the limits succeeds and keeps the ring
invariant. -/
theorem ring_append_all_ok (p : fram_partition_t) :
    ∀ (more : List (List Nat × Nat)) (ring : fram_ring_t) (pm : fram_pm_t) (pmem : Nat → Nat)
      (es : List (List Nat × Nat)),
      RingGeom ring p → PmOK pm p pmem → RingAfter ring pmem es →
      (∀ e ∈ more, e.1.length ≤ ring.max_payload ∧ e.1.length ≤ UINT16_MAX) →
      ∃ ring1 pm1 pmem1,
        fram_ring_append_all ring pm more = (ESP_OK, ring1, pm1) ∧
        RingGeom ring1 p ∧ PmOK pm1 p pmem1 ∧ RingAfter ring1 pmem1 (es ++ more) ∧
        ring1.capacity = ring.capacity ∧ ring1.max_payload = ring.max_payload ∧
        ring1.magic = ring.magic ∧ ring1.entry_size = ring.entry_size := by
  intro more
  induction more with
  | nil =>
    intro ring pm pmem es g h inv _
    refine ⟨ring, pm, pmem, rfl, g, h, ?_, rfl, rfl, rfl, rfl⟩
    rw [List.append_nil]
    exact inv
  | cons e rest ih =>
    intro ring pm pmem es g h inv hb
    obtain ⟨hl, hl16⟩ := hb e (List.mem_cons_self _ _)
    obtain ⟨ring1, pm1, pmem1, happ, g1, h1, inv1, e1, e2, e3, e4⟩ :=
      ring_append_step ring p pm pmem es e.1 e.2 g h inv hl hl16
    obtain ⟨ring2, pm2, pmem2, hall, g2, h2, inv2, f1, f2, f3, f4⟩ :=
      ih ring1 pm1 pmem1 (es ++ [(e.1, e.2)]) g1 h1 inv1
        (fun x hx => by rw [e2]; exact hb x (List.mem_cons_of_mem _ hx))
    refine ⟨ring2, pm2, pmem2, ?_, g2, h2, ?_, f1.trans e1, f2.trans e2, f3.trans e3,
      f4.trans e4⟩
    · simp only [fram_ring_append_all, happ, ne_eq, not_true_eq_false, if_false]
      exact hall
    · rw [List.append_assoc] at inv2
      exact inv2

/-- A run of appends only succeeds when every payload is within the limits. -/
theorem ring_append_all_bounded (p : fram_partition_t) :
    ∀ (more : List (List Nat × Nat)) (ring : fram_ring_t) (pm : fram_pm_t) (pmem : Nat → Nat)
      (es : List (List Nat × Nat)),
      RingGeom ring p → PmOK pm p pmem → RingAfter ring pmem es →
      (fram_ring_append_all ring pm more).1 = ESP_OK →
      ∀ e ∈ more, e.1.length ≤ ring.max_payload ∧ e.1.length ≤ UINT16_MAX := by
  intro more
  induction more with
  | nil =>
    intro ring pm pmem es _ _ _ _ e he
    exact absurd he (List.not_mem_nil _)
  | cons e rest ih =>
    intro ring pm pmem es g h inv hall
    by_cases hb : e.1.length ≤ ring.max_payload ∧ e.1.length ≤ UINT16_MAX
    · obtain ⟨ring1, pm1, pmem1, happ, g1, h1, inv1, e1, e2, e3, e4⟩ :=
        ring_append_step ring p pm pmem es e.1 e.2 g h inv hb.1 hb.2
      simp only [fram_ring_append_all, happ, ne_eq, not_true_eq_false, if_false] at hall
      have hrest := ih ring1 pm1 pmem1 _ g1 h1 inv1 hall
      intro x hx
      rcases List.mem_cons.mp hx with rfl | hm
      · exact hb
      · rw [← e2]; exact hrest x hm
    · exfalso
      have hbad : e.1.length > ring.max_payload ∨ e.1.length > UINT16_MAX := by omega
      have happ : (fram_ring_append ring pm e.1 e.2).1 = ESP_ERR_INVALID_SIZE := by
        unfold fram_ring_append
        simp only [g.ready, Bool.not_true, Bool.false_eq_true, if_false, hbad, if_true]
      simp only [fram_ring_append_all, happ, ne_eq, reduceCtorEq, not_false_eq_true,
        if_true] at hall

/-- The state after a successful run of appends. -/
theorem ring_append_all_spec (p : fram_partition_t) (more : List (List Nat × Nat))
    (ring ring1 : fram_ring_t) (pm pm1 : fram_pm_t) (pmem : Nat → Nat)
    (es : List (List Nat × Nat)) (g : RingGeom ring p) (h : PmOK pm p pmem)
    (inv : RingAfter ring pmem es)
    (happ : fram_ring_append_all ring pm more = (ESP_OK, ring1, pm1)) :
    ∃ pmem1, RingGeom ring1 p ∧ PmOK pm1 p pmem1 ∧ RingAfter ring1 pmem1 (es ++ more) ∧
      ring1.capacity = ring.capacity ∧ ring1.max_payload = ring.max_payload ∧
      ring1.magic = ring.magic ∧ ring1.entry_size = ring.entry_size := by
  have hb := ring_append_all_bounded p more ring pm pmem es g h inv (by rw [happ])
  obtain ⟨r, q, pmem1, hall, rest⟩ := ring_append_all_ok p more ring pm pmem es g h inv hb
  rw [happ] at hall
  injection hall with _ h2
  injection h2 with h3 h4
  subst h3 h4
  exact ⟨pmem1, rest⟩

/-- The scan of a view without valid records finds nothing. -/
theorem ring_recovered_none (p : fram_partition_t) (cfg : fram_ring_config_t) :
    ring_recovered p cfg (fun _ => none) = ring_empty p cfg := by
  have hf := (ring_scan_view_spec (fun _ => none) (fun _ => True)
    (List.range (ring_empty p cfg).capacity)
    { highest_seq := 0, highest_slot := 0, found := false }
    (fun _ _ => trivial) (fun hx => Bool.noConfusion hx)).2.2.2 rfl (fun _ _ => rfl)
  simp only [ring_recovered, hf, Bool.not_false, if_true]

/-- `fram_ring_init` returning `ESP_OK` accepted the configuration. -/
theorem ring_init_ok_cfg (K : Kconfig) (ring0 ring1 : fram_ring_t) (pm pm1 : fram_pm_t)
    (p : fram_partition_t) (cfg : fram_ring_config_t)
    (hfind : fram_pm_find pm cfg.partition_name = some p)
    (hK : K.FRAM_RING_MAX_PAYLOAD + RING_HEADER_SIZE + 1 < U32)
    (hinit : fram_ring_init K ring0 pm cfg = (ESP_OK, ring1, pm1)) :
    0 < cfg.max_payload ∧ cfg.max_payload ≤ K.FRAM_RING_MAX_PAYLOAD ∧
    RING_HEADER_SIZE + cfg.max_payload + 1 ≤ p.size := by
  have hcfg : ¬ (cfg.max_payload = 0 ∨ cfg.max_payload > K.FRAM_RING_MAX_PAYLOAD) := by
    intro hc
    unfold fram_ring_init at hinit
    rw [if_pos hc] at hinit
    injection hinit with h1 _
    cases h1
  refine ⟨by omega, by omega, ?_⟩
  by_contra hcap
  have hes : (RING_HEADER_SIZE + cfg.max_payload + 1) % U32
      = RING_HEADER_SIZE + cfg.max_payload + 1 := Nat.mod_eq_of_lt (by omega)
  have h0 : p.size / ((RING_HEADER_SIZE + cfg.max_payload + 1) % U32) = 0 := by
    rw [hes]
    exact Nat.div_eq_of_lt (by omega)
  unfold fram_ring_init at hinit
  simp only [hfind] at hinit
  rw [if_neg hcfg, if_pos h0] at hinit
  injection hinit with h1 _
  cases h1

/-- `fram_ring_init` on an erased partition gives the empty ring. -/
theorem ring_init_erased (K : Kconfig) (ring0 ring1 : fram_ring_t) (pm pm1 : fram_pm_t)
    (p : fram_partition_t) (pmem : Nat → Nat) (cfg : fram_ring_config_t)
    (hfind : fram_pm_find pm cfg.partition_name = some p) (h : PmOK pm p pmem)
    (herased : ∀ i, i < p.size → pmem i = 0xFF)
    (hK : K.FRAM_RING_MAX_PAYLOAD + RING_HEADER_SIZE + 1 < U32) (hmagic : cfg.magic < U32)
    (hinit : fram_ring_init K ring0 pm cfg = (ESP_OK, ring1, pm1)) :
    ring1 = ring_empty p cfg ∧ RingGeom ring1 p ∧ PmOK pm1 p pmem ∧ RingAfter ring1 pmem [] := by
  obtain ⟨hmp, hle, hcap⟩ := ring_init_ok_cfg K ring0 ring1 pm pm1 p cfg hfind hK hinit
  obtain ⟨g, hes⟩ := ring_empty_geom K p cfg hle hK hmagic hcap
  have hfresh : ∀ j, j < (ring_empty p cfg).capacity →
      pmem (j * (ring_empty p cfg).entry_size + RING_HEADER_SIZE
        + (ring_empty p cfg).max_payload) ≠ FRAM_RING_COMMIT := by
    intro j hj
    obtain ⟨_, _, _, hfit, _⟩ := ring_slot_offset_eq _ p pm pmem g h j hj
    have hes2 := g.entry_size
    rw [Nat.add_mul, Nat.one_mul] at hfit
    rw [herased _ (by omega)]
    decide
  have hV : RingView (ring_empty p cfg) pmem (fun _ => none) := by
    intro slot hs
    exact ⟨fun q hq => Option.noConfusion hq, fun _ => hfresh slot hs⟩
  obtain ⟨pm2, hi2, hok2⟩ := ring_init_view K ring0 pm p pmem cfg (fun _ => none) hfind h hmp
    hle hK hmagic hcap hV
  rw [hinit, ring_recovered_none] at hi2
  injection hi2 with _ h2
  injection h2 with h3 h4
  subst h3 h4
  refine ⟨rfl, g, hok2, ⟨rfl, ?_, ?_, ?_, ?_, ?_, ?_⟩⟩
  · show 0 = 0 % _
    rw [Nat.zero_mod]
  · show 0 = min 0 _
    rw [Nat.zero_min]
  · show 0 = if 0 ≤ _ then 0 else _
    rw [if_pos (Nat.zero_le _)]
  · intro i hi
    exact absurd hi (Nat.not_lt_zero _)
  · intro i hi
    exact absurd hi (Nat.not_lt_zero _)
  · intro j _ hj
    exact hfresh j hj

/-- `fram_ring_peek_newest` after the records `es` have been appended. -/
theorem ring_peek_newest_after (ring : fram_ring_t) (p : fram_partition_t) (pm : fram_pm_t)
    (pmem : Nat → Nat) (es : List (List Nat × Nat)) (buf : List Nat) (cap s0 t0 : Nat)
    (g : RingGeom ring p) (h : PmOK pm p pmem) (inv : RingAfter ring pmem es)
    (hn : 0 < es.length) (hcap : (es.getD (es.length - 1) ([], 0)).1.length ≤ cap) :
    ∃ pm1, fram_ring_peek_newest ring pm
        { payload := some buf, len := some cap, seq := some s0, ts_us := some t0 } =
        (ESP_OK,
          { payload := some ((es.getD (es.length - 1) ([], 0)).1
              ++ buf.drop (es.getD (es.length - 1) ([], 0)).1.length),
            len := some (es.getD (es.length - 1) ([], 0)).1.length,
            seq := some ((es.length - 1) % U32),
            ts_us := some ((es.getD (es.length - 1) ([], 0)).2 % U64) }, pm1) ∧
      PmOK pm1 p pmem := by
  have hcpos := g.capacity_pos
  have hsmall := ring_capacity_small ring p pm pmem g h
  have hb := inv.bounded (es.length - 1) (by omega)
  have hrec := inv.window (es.length - 1) (by omega) (by omega)
  obtain ⟨pm1, hr, hok⟩ := ring_read_slot_rec ring p pm pmem ((es.length - 1) % ring.capacity)
    ((es.length - 1) % U32) (es.getD (es.length - 1) ([], 0)).2
    (es.getD (es.length - 1) ([], 0)).1 buf cap s0 t0 g h (Nat.mod_lt _ hcpos)
    (Nat.mod_lt _ (by decide)) hb.1 hb.2 hcap hrec
  refine ⟨pm1, ?_, hok⟩
  have hcount : ¬ ring.count = 0 := by
    rw [inv.count, Nat.min_def]
    split_ifs <;> omega
  unfold fram_ring_peek_newest fram_ring_lock
  simp only [Option.isNone_some, Bool.false_eq_true, if_false, g.ready, Bool.not_true,
    hcount, or_self, g.mutex, mutex_take, ne_eq, not_true_eq_false]
  rw [inv.head_slot, pred_slot_eq es.length ring.capacity hn hcpos hsmall]
  exact hr

/-- `fram_ring_peek_oldest` after the records `es` have been appended. -/
theorem ring_peek_oldest_after (ring : fram_ring_t) (p : fram_partition_t) (pm : fram_pm_t)
    (pmem : Nat → Nat) (es : List (List Nat × Nat)) (buf : List Nat) (cap s0 t0 : Nat)
    (g : RingGeom ring p) (h : PmOK pm p pmem) (inv : RingAfter ring pmem es)
    (hn : 0 < es.length)
    (hcap : (es.getD (es.length - min es.length ring.capacity) ([], 0)).1.length ≤ cap) :
    ∃ pm1, fram_ring_peek_oldest ring pm
        { payload := some buf, len := some cap, seq := some s0, ts_us := some t0 } =
        (ESP_OK,
          { payload := some ((es.getD (es.length - min es.length ring.capacity) ([], 0)).1
              ++ buf.drop (es.getD (es.length - min es.length ring.capacity) ([], 0)).1.length),
            len := some (es.getD (es.length - min es.length ring.capacity) ([], 0)).1.length,
            seq := some ((es.length - min es.length ring.capacity) % U32),
            ts_us := some ((es.getD (es.length - min es.length ring.capacity) ([], 0)).2 % U64) },
          pm1) ∧
      PmOK pm1 p pmem := by
  have hcpos := g.capacity_pos
  have hm : es.length - min es.length ring.capacity < es.length ∧
      es.length ≤ es.length - min es.length ring.capacity + ring.capacity := by
    rw [Nat.min_def]
    split_ifs <;> omega
  have hb := inv.bounded _ hm.1
  have hrec := inv.window _ hm.1 hm.2
  obtain ⟨pm1, hr, hok⟩ := ring_read_slot_rec ring p pm pmem
    ((es.length - min es.length ring.capacity) % ring.capacity)
    ((es.length - min es.length ring.capacity) % U32)
    (es.getD (es.length - min es.length ring.capacity) ([], 0)).2
    (es.getD (es.length - min es.length ring.capacity) ([], 0)).1 buf cap s0 t0 g h
    (Nat.mod_lt _ hcpos) (Nat.mod_lt _ (by decide)) hb.1 hb.2 hcap hrec
  refine ⟨pm1, ?_, hok⟩
  have hcount : ¬ ring.count = 0 := by
    rw [inv.count, Nat.min_def]
    split_ifs <;> omega
  have htail : ring.tail_slot = (es.length - min es.length ring.capacity) % ring.capacity := by
    rw [inv.tail_slot, Nat.min_def]
    split_ifs with hle
    · rw [Nat.sub_self, Nat.zero_mod]
    · exact Nat.mod_eq_sub_mod (by omega)
  unfold fram_ring_peek_oldest fram_ring_lock
  simp only [Option.isNone_some, Bool.false_eq_true, if_false, g.ready, Bool.not_true,
    hcount, or_self, g.mutex, mutex_take, ne_eq, not_true_eq_false]
  rw [htail]
  exact hr

theorem PmSame.rfl_same (pm : fram_pm_t) : PmSame pm pm := ⟨rfl, rfl⟩

theorem PmSame.trans_same (pm pm1 pm2 : fram_pm_t) (h1 : PmSame pm pm1) (h2 : PmSame pm1 pm2) :
    PmSame pm pm2 :=
  ⟨h2.1.trans h1.1, h2.2.trans h1.2⟩

/-- `fram_pm_find` only looks at the partition table. -/
theorem fram_pm_find_same (pm pm1 : fram_pm_t) (name : List Nat) (h : PmSame pm pm1) :
    fram_pm_find pm1 name = fram_pm_find pm name := by
  unfold fram_pm_find
  rw [h.1, h.2]

theorem fram_pm_read_same (pm : fram_pm_t) (part : Option fram_partition_t) (offset len : Nat) :
    PmSame pm (fram_pm_read pm part offset len).2.2 := by
  unfold fram_pm_read
  cases part with
  | none => exact ⟨rfl, rfl⟩
  | some p =>
    simp only
    split_ifs <;> exact ⟨rfl, rfl⟩

theorem fram_pm_write_same (pm : fram_pm_t) (part : Option fram_partition_t) (offset : Nat)
    (data : List Nat) : PmSame pm (fram_pm_write pm part offset data).2 := by
  unfold fram_pm_write
  cases part with
  | none => exact ⟨rfl, rfl⟩
  | some p =>
    simp only
    split_ifs <;> exact ⟨rfl, rfl⟩

theorem fram_ring_validate_same (ring : fram_ring_t) (pm : fram_pm_t) (slot : Nat) :
    PmSame pm (fram_ring_validate_slot ring pm slot).2.2 := by
  have h1 := fram_pm_read_same pm ring.part (fram_ring_commit_offset ring slot) 1
  have h2 := fram_pm_read_same (fram_pm_read pm ring.part (fram_ring_commit_offset ring slot) 1).2.2
    ring.part (fram_ring_slot_offset ring slot) RING_HEADER_SIZE
  have h12 := PmSame.trans_same _ _ _ h1 h2
  have h3 := fun len => fram_pm_read_same
    (fram_pm_read (fram_pm_read pm ring.part (fram_ring_commit_offset ring slot) 1).2.2
      ring.part (fram_ring_slot_offset ring slot) RING_HEADER_SIZE).2.2 ring.part
    ((fram_ring_slot_offset ring slot + RING_HEADER_SIZE) % U32) len
  unfold fram_ring_validate_slot fram_ring_read_commit fram_ring_read_header
  simp only
  split_ifs
  all_goals first
    | exact h1
    | exact h12
    | exact PmSame.trans_same _ _ _ h12 (h3 _)

theorem fram_ring_scan_same (ring : fram_ring_t) :
    ∀ (slots : List Nat) (st : ring_scan_t) (pm : fram_pm_t),
      PmSame pm (fram_ring_init_scan ring slots st pm).2 := by
  intro slots
  induction slots with
  | nil => intro st pm; exact ⟨rfl, rfl⟩
  | cons slot rest ih =>
    intro st pm
    have hv := fram_ring_validate_same ring pm slot
    unfold fram_ring_init_scan
    simp only
    split
    · split_ifs
      · exact PmSame.trans_same _ _ _ hv (ih _ _)
      · exact PmSame.trans_same _ _ _ hv (ih _ _)
    · exact PmSame.trans_same _ _ _ hv (ih _ _)

theorem fram_ring_walk_same (ring : fram_ring_t) :
    ∀ (fuel : Nat) (pm : fram_pm_t) (run_len expected_seq slot : Nat),
      PmSame pm (fram_ring_init_walk ring fuel pm run_len expected_seq slot).2 := by
  intro fuel
  induction fuel with
  | zero => intro pm _ _ _; exact ⟨rfl, rfl⟩
  | succ fuel ih =>
    intro pm run_len expected_seq slot
    have hv := fram_ring_validate_same ring pm slot
    unfold fram_ring_init_walk
    simp only
    repeat' split
    all_goals first
      | exact ⟨rfl, rfl⟩
      | exact hv
      | exact PmSame.trans_same _ _ _ hv (ih _ _ _ _)

theorem pm_same_ite (pm : fram_pm_t) (c : Prop) [Decidable c] (a b : esp_err_t × fram_pm_t)
    (ha : PmSame pm a.2) (hb : PmSame pm b.2) : PmSame pm (if c then a else b).2 := by
  split_ifs
  · exact ha
  · exact hb

theorem fram_ring_append_same (ring : fram_ring_t) (pm : fram_pm_t) (payload : List Nat)
    (now : Nat) : PmSame pm (fram_ring_append ring pm payload now).2.2 := by
  have h0 := fram_pm_write_same pm ring.part (fram_ring_commit_offset ring ring.head_slot) [0]
  have h1 := fun data => PmSame.trans_same _ _ _ h0 (fram_pm_write_same
    (fram_pm_write pm ring.part (fram_ring_commit_offset ring ring.head_slot) [0]).2 ring.part
    (fram_ring_slot_offset ring ring.head_slot) data)
  have h2 := fun pm1 => fram_pm_write_same pm1 ring.part
    ((fram_ring_slot_offset ring ring.head_slot + RING_HEADER_SIZE) % U32) payload
  have h3 := fun pm1 => fram_pm_write_same pm1 ring.part
    (fram_ring_commit_offset ring ring.head_slot) [FRAM_RING_COMMIT]
  unfold fram_ring_append fram_ring_write_commit
  simp only
  generalize fram_ring_header_t.to_bytes _ = hb
  split_ifs
  all_goals first
    | exact ⟨rfl, rfl⟩
    | exact h0
    | exact h1 _
    | exact PmSame.trans_same _ _ _ (h1 _) (h2 _)
    | exact PmSame.trans_same _ _ _ (h1 _) (h3 _)
    | exact PmSame.trans_same _ _ _ (PmSame.trans_same _ _ _ (h1 _) (h2 _)) (h3 _)

theorem fram_ring_append_all_same :
    ∀ (more : List (List Nat × Nat)) (ring : fram_ring_t) (pm : fram_pm_t),
      PmSame pm (fram_ring_append_all ring pm more).2.2 := by
  intro more
  induction more with
  | nil => intro ring pm; exact ⟨rfl, rfl⟩
  | cons e rest ih =>
    intro ring pm
    have ha := fram_ring_append_same ring pm e.1 e.2
    unfold fram_ring_append_all
    simp only
    split
    · exact ha
    · exact PmSame.trans_same _ _ _ ha (ih _ _)

theorem fram_ring_init_same (K : Kconfig) (ring : fram_ring_t) (pm : fram_pm_t)
    (cfg : fram_ring_config_t) : PmSame pm (fram_ring_init K ring pm cfg).2.2 := by
  unfold fram_ring_init
  simp only
  repeat' split
  all_goals first
    | exact ⟨rfl, rfl⟩
    | exact fram_ring_scan_same _ _ _ _
    | exact PmSame.trans_same _ _ _ (fram_ring_scan_same _ _ _ _) (fram_ring_walk_same _ _ _ _ _ _)

/-- The newest record stored in slot `s` after `n` appends. -/
theorem torn_index_facts (n c s : Nat) (hc : 0 < c) (hs : s < c) (hn : s < n) :
    (n - 1 - (n - 1 - s) % c) % c = s ∧ n - 1 - (n - 1 - s) % c ≤ n - 1 ∧
    n ≤ n - 1 - (n - 1 - s) % c + c := by
  have hlt := Nat.mod_lt (n - 1 - s) hc
  have hle := Nat.mod_le (n - 1 - s) c
  have hdm := Nat.div_add_mod (n - 1 - s) c
  refine ⟨?_, by omega, by omega⟩
  have he : n - 1 - (n - 1 - s) % c = s + c * ((n - 1 - s) / c) := by omega
  rw [he, Nat.add_mul_mod_self_left, Nat.mod_eq_of_lt hs]

/-- Two indices less than `c` apart with the same slot are equal. -/
theorem index_unique (c i j : Nat) (h1 : i < j + c) (h2 : j < i + c) (he : i % c = j % c) :
    i = j := by
  rcases Nat.lt_trichotomy i j with h | h | h
  · exact absurd he (mod_ne_of_window c i j h h2)
  · exact h
  · exact absurd he.symm (mod_ne_of_window c j i h h1)

/-- The window of the view after the newest record is torn. -/
theorem torn_view_window (n c : Nat) (hc : 0 < c) (hn : 1 ≤ n) :
    ViewWindow (ring_torn_view n c) c (n - min n c) (n - 1) := by
  have hlo : n - min n c ≤ n ∧ n ≤ n - min n c + c ∧ (n ≤ c → n - min n c = 0) := by
    rw [Nat.min_def]
    split_ifs <;> omega
  intro s hs q
  constructor
  · intro hv
    unfold ring_torn_view at hv
    split_ifs at hv with h1 h2
    obtain ⟨f1, f2, f3⟩ := torn_index_facts n c s hc hs (by omega)
    refine ⟨n - 1 - (n - 1 - s) % c, ?_, by omega, f1, ?_⟩
    · rcases Nat.le_total n c with hle | hle
      · rw [hlo.2.2 hle]; exact Nat.zero_le _
      · rw [Nat.min_eq_right hle]; omega
    · injection hv with hv
      exact hv.symm
  · rintro ⟨i, hi1, hi2, hi3, hi4⟩
    have hsi : s ≤ i := by rw [← hi3]; exact Nat.mod_le _ _
    obtain ⟨f1, f2, f3⟩ := torn_index_facts n c s hc hs (by omega)
    have hu : n - 1 - (n - 1 - s) % c = i :=
      index_unique c _ _ (by omega) (by omega) (by rw [f1, hi3])
    unfold ring_torn_view
    rw [if_neg (by omega), hu, if_neg (by omega), hi4]

/-- A view with an empty window has no valid record. -/
theorem scan_view_empty (V : Nat → Option Nat) (c lo hi : Nat) (hw : ViewWindow V c lo hi)
    (he : hi ≤ lo) :
    (ring_scan_view V (List.range c)
      { highest_seq := 0, highest_slot := 0, found := false }).found = false := by
  apply (ring_scan_view_spec V (fun s => s < c) (List.range c)
    { highest_seq := 0, highest_slot := 0, found := false }
    (fun s hs => List.mem_range.mp hs) (fun hx => Bool.noConfusion hx)).2.2.2 rfl
  intro s hs
  cases hv : V s with
  | none => rfl
  | some q =>
    obtain ⟨i, h1, h2, _, _⟩ := (hw s (List.mem_range.mp hs) q).mp hv
    omega

/-- The scan of a view returns the record of the window whose sequence number
is the largest. -/
theorem scan_view_max (V : Nat → Option Nat) (c lo hi t : Nat) (hw : ViewWindow V c lo hi)
    (hc : 0 < c) (hlt : lo ≤ t) (hth : t < hi)
    (hmax : ∀ i, lo ≤ i → i < hi → i ≠ t → i % U32 < t % U32) :
    ring_scan_view V (List.range c) { highest_seq := 0, highest_slot := 0, found := false }
      = { highest_seq := t % U32, highest_slot := t % c, found := true } := by
  obtain ⟨s1, _, s3, _⟩ := ring_scan_view_spec V (fun s => s < c) (List.range c)
    { highest_seq := 0, highest_slot := 0, found := false }
    (fun s hs => List.mem_range.mp hs) (fun hx => Bool.noConfusion hx)
  have hvt : V (t % c) = some (t % U32) :=
    (hw (t % c) (Nat.mod_lt _ hc) (t % U32)).mpr ⟨t, hlt, hth, rfl, rfl⟩
  obtain ⟨hf, hge⟩ := s3 (t % c) (List.mem_range.mpr (Nat.mod_lt _ hc)) _ hvt
  obtain ⟨hsl, hvr⟩ := s1 hf
  obtain ⟨i, h1, h2, h3, h4⟩ := (hw _ hsl _).mp hvr
  have hit : i = t := by
    by_contra hne
    have := hmax i h1 h2 hne
    omega
  subst hit
  generalize ring_scan_view V (List.range c)
    { highest_seq := 0, highest_slot := 0, found := false } = r at hf h3 h4
  cases r
  simp only at hf h3 h4
  rw [hf, ← h3, h4]

/-- The walk over a view runs from record `t` down to the oldest record of the
window. -/
theorem walk_view_run (V : Nat → Option Nat) (c lo hi t : Nat) (hw : ViewWindow V c lo hi)
    (hc : 0 < c) (hcU : c + c ≤ U32) (hlt : lo ≤ t) (hth : t < hi) (hsz : hi < lo + c) :
    ∀ (j k fuel : Nat), k + j = t - lo + 1 → j < fuel →
      ring_walk_view V c fuel k ((t + U32 - k) % U32) ((t + c - k) % c) = t - lo + 1 := by
  intro j
  induction j with
  | zero =>
    intro k fuel hk hf
    obtain ⟨f, rfl⟩ : ∃ f, fuel = f + 1 := ⟨fuel - 1, by omega⟩
    have hkc : k < c := by omega
    have hslot : t + c - k = lo + c - 1 := by omega
    have hv : V ((lo + c - 1) % c) = none := by
      cases hv : V ((lo + c - 1) % c) with
      | none => rfl
      | some q =>
        obtain ⟨i, h1, h2, h3, _⟩ := (hw _ (Nat.mod_lt _ hc) q).mp hv
        exact absurd h3 (mod_ne_of_window c i (lo + c - 1) (by omega) (by omega))
    unfold ring_walk_view
    rw [if_pos hkc, hslot]
    simp only [hv]
    omega
  | succ j ih =>
    intro k fuel hk hf
    obtain ⟨f, rfl⟩ : ∃ f, fuel = f + 1 := ⟨fuel - 1, by omega⟩
    have hkc : k < c := by omega
    have hslot : (t + c - k) % c = (t - k) % c := by
      have : t + c - k = t - k + c := by omega
      rw [this, Nat.add_mod_right]
    have hexp : (t + U32 - k) % U32 = (t - k) % U32 := by
      have : t + U32 - k = t - k + U32 := by omega
      rw [this, Nat.add_mod_right]
    have hv : V ((t - k) % c) = some ((t - k) % U32) :=
      (hw _ (Nat.mod_lt _ hc) _).mpr ⟨t - k, by omega, by omega, rfl, rfl⟩
    have hnext : (((t + c - k) % c + c) % U32 + U32 - 1) % U32 % c = (t + c - (k + 1)) % c := by
      rw [pred_slot_eq (t + c - k) c (by omega) hc hcU]
      congr 1
    have hexp2 : ((t + U32 - k) % U32 + U32 - 1) % U32 = (t + U32 - (k + 1)) % U32 := by
      rw [U32_eq] at hcU ⊢
      omega
    have hrun : (k + 1) % U32 = k + 1 := by
      rw [U32_eq] at hcU ⊢
      omega
    have hres := ih (k + 1) f (by omega) (by omega)
    unfold ring_walk_view
    rw [if_pos hkc]
    rw [hslot] at hnext ⊢
    rw [hexp] at hexp2 ⊢
    simp only [hv, ne_eq, not_true_eq_false, if_false, hrun, hnext, hexp2]
    rw [if_neg (by omega)]
    exact hres

theorem pred_mod (n c : Nat) (hn : 1 ≤ n) (hc : 0 < c) :
    (n % c + c - 1) % c = (n - 1) % c := by
  have h2 := succ_mod_mod (n - 1) c
  rw [Nat.sub_add_cancel hn] at h2
  have hlt2 := Nat.mod_lt (n - 1) hc
  by_cases hr : (n - 1) % c + 1 < c
  · rw [Nat.mod_eq_of_lt hr] at h2
    rw [← h2]
    have : (n - 1) % c + 1 + c - 1 = (n - 1) % c + c := by omega
    rw [this, Nat.add_mod_right, Nat.mod_mod]
  · have he : (n - 1) % c + 1 = c := by omega
    rw [he, Nat.mod_self] at h2
    rw [← h2, Nat.zero_add, Nat.mod_eq_of_lt (by omega)]
    omega

/-- Zeroing the commit byte of the newest slot through the backing buffer. -/
theorem ring_tear_ok (ring : fram_ring_t) (p : fram_partition_t) (pm : fram_pm_t)
    (pmem : Nat → Nat) (es : List (List Nat × Nat)) (g : RingGeom ring p) (h : PmOK pm p pmem)
    (inv : RingAfter ring pmem es) (hn : 1 ≤ es.length) :
    PmOK (ring_tear_newest ring pm p) p
      (mem_write pmem (((es.length - 1) % ring.capacity) * ring.entry_size + RING_HEADER_SIZE
        + ring.max_payload) [0]) ∧
    PmSame pm (ring_tear_newest ring pm p) := by
  have hcpos := g.capacity_pos
  have hsmall := ring_capacity_small ring p pm pmem g h
  obtain ⟨_, _, _, hfit, hsz⟩ := ring_slot_offset_eq ring p pm pmem g h
    ((es.length - 1) % ring.capacity) (Nat.mod_lt _ hcpos)
  rw [Nat.add_mul, Nat.one_mul] at hfit
  have hes := g.entry_size
  obtain ⟨mem, size, hd, hfit2, _⟩ := h.device
  have hsl := hd.size_lt
  have hlt := Nat.mod_lt es.length hcpos
  have hslot : ((ring.head_slot + ring.capacity - 1) % U32) % ring.capacity
      = (es.length - 1) % ring.capacity := by
    rw [inv.head_slot, Nat.mod_eq_of_lt
      (show es.length % ring.capacity + ring.capacity - 1 < U32 by omega),
      pred_mod _ _ hn hcpos]
  obtain ⟨off, hoffdef⟩ : ∃ off, off = ((es.length - 1) % ring.capacity) * ring.entry_size
      + RING_HEADER_SIZE + ring.max_payload := ⟨_, rfl⟩
  have hoff : (p.offset + ((es.length - 1) % ring.capacity) * ring.entry_size + RING_HEADER_SIZE
      + ring.max_payload) % U32 = p.offset + off := by
    rw [Nat.mod_eq_of_lt (by omega)]
    omega
  have heq : ring_tear_newest ring pm p =
      { pm with dev := mock_poke pm.dev (p.offset + off) 0 } := by
    unfold ring_tear_newest
    simp only [hslot, hoff]
  rw [heq, ← hoffdef]
  exact ⟨pm_poke_ok pm p pmem _ 0 h (by omega), rfl, rfl⟩

/-- The records of the window other than the newest survive the tear. -/
theorem ring_torn_records (ring : fram_ring_t) (p : fram_partition_t)
    (pmem : Nat → Nat) (es : List (List Nat × Nat)) (g : RingGeom ring p)
    (inv : RingAfter ring pmem es) (i : Nat) (hi : i + 1 < es.length)
    (hw : es.length ≤ i + ring.capacity) :
    SlotRec (mem_write pmem (((es.length - 1) % ring.capacity) * ring.entry_size
        + RING_HEADER_SIZE + ring.max_payload) [0]) ring (i % ring.capacity)
      (ring_header_for ring.magic (i % U32) (es.getD i ([], 0)).2 (es.getD i ([], 0)).1)
      (es.getD i ([], 0)).1 := by
  have hes := g.entry_size
  apply slot_rec_frame pmem _ ring ring _ _ _ rfl rfl hes (inv.bounded i (by omega)).1 _
    (inv.window i (by omega) hw)
  intro k hk
  apply mem_write_outside
  have hd := slot_disjoint ring.entry_size (i % ring.capacity)
    ((es.length - 1) % ring.capacity) k
    (mod_ne_of_window _ _ _ (by omega) (by omega)) hk
  rw [Nat.add_mul, Nat.one_mul] at hd
  simp only [List.length_singleton]
  omega

/-- The view of the slots after the tear describes the partition. -/
theorem ring_torn_view_ok (ring : fram_ring_t) (p : fram_partition_t)
    (pmem : Nat → Nat) (es : List (List Nat × Nat)) (g : RingGeom ring p)
    (inv : RingAfter ring pmem es) (hn : 1 ≤ es.length) :
    RingView ring (mem_write pmem (((es.length - 1) % ring.capacity) * ring.entry_size
        + RING_HEADER_SIZE + ring.max_payload) [0])
      (ring_torn_view es.length ring.capacity) := by
  have hcpos := g.capacity_pos
  have hes := g.entry_size
  intro s hs
  constructor
  · intro q hq
    obtain ⟨i, h1, h2, h3, h4⟩ :=
      (torn_view_window es.length ring.capacity hcpos hn s hs q).mp hq
    have hwin : es.length ≤ i + ring.capacity := by
      have : es.length - min es.length ring.capacity + ring.capacity ≥ es.length := by
        rw [Nat.min_def]
        split_ifs <;> omega
      omega
    have hb := inv.bounded i (by omega)
    refine ⟨by rw [h4]; exact Nat.mod_lt _ (by decide), (es.getD i ([], 0)).2,
      (es.getD i ([], 0)).1, hb.1, hb.2, ?_⟩
    rw [h4, ← h3]
    exact ring_torn_records ring p pmem es g inv i (by omega) hwin
  · intro hv
    unfold ring_torn_view at hv
    split_ifs at hv with h1 h2
    · have hne : s ≠ (es.length - 1) % ring.capacity := by
        rw [Nat.mod_eq_of_lt (by omega)]
        omega
      have hd := slot_disjoint ring.entry_size s ((es.length - 1) % ring.capacity)
        (RING_HEADER_SIZE + ring.max_payload) hne (by omega)
      rw [Nat.add_mul, Nat.one_mul] at hd
      rw [mem_write_outside _ _ _ _ (by simp only [List.length_singleton]; omega)]
      exact inv.fresh s h1 hs
    · obtain ⟨f1, _, _⟩ := torn_index_facts es.length ring.capacity s hcpos hs (by omega)
      rw [h2] at f1
      rw [f1]
      have := mem_write_inside pmem (s * ring.entry_size + RING_HEADER_SIZE + ring.max_payload)
        [0] 0 (by decide)
      rw [Nat.add_zero] at this
      rw [this]
      decide

/-- A view of the slots only depends on the geometry of the ring. -/
theorem ring_view_congr (r1 r2 : fram_ring_t) (pmem : Nat → Nat) (V : Nat → Option Nat)
    (hc : r1.capacity = r2.capacity) (he : r1.entry_size = r2.entry_size)
    (hm : r1.max_payload = r2.max_payload) (hg : r1.magic = r2.magic)
    (h : RingView r1 pmem V) : RingView r2 pmem V := by
  intro s hs
  rw [← hc] at hs
  obtain ⟨a, b⟩ := h s hs
  constructor
  · intro q hq
    obtain ⟨hq1, now, payload, l1, l2, hrec⟩ := a q hq
    refine ⟨hq1, now, payload, by rw [← hm]; exact l1, l2, ?_⟩
    rw [← hg]
    exact ⟨by rw [← he]; exact hrec.image, by rw [← he, ← hm]; exact hrec.commit⟩
  · intro hv
    rw [← he, ← hm]
    exact b hv

/-- Recovery from a view with an empty window gives the empty ring. -/
theorem ring_recovered_empty (p : fram_partition_t) (cfg : fram_ring_config_t)
    (V : Nat → Option Nat) (lo hi : Nat)
    (hw : ViewWindow V (ring_empty p cfg).capacity lo hi) (he : hi ≤ lo) :
    ring_recovered p cfg V = ring_empty p cfg := by
  have hf := scan_view_empty V _ lo hi hw he
  simp only [ring_recovered, hf, Bool.not_false, if_true]

/-- Recovery from a view whose window holds the records `lo ≤ i < hi`, the
record `t` carrying the largest sequence number. -/
theorem ring_recovered_window (p : fram_partition_t) (cfg : fram_ring_config_t)
    (V : Nat → Option Nat) (lo hi t : Nat)
    (hw : ViewWindow V (ring_empty p cfg).capacity lo hi)
    (hc : 0 < (ring_empty p cfg).capacity)
    (hcU : (ring_empty p cfg).capacity + (ring_empty p cfg).capacity ≤ U32)
    (hlt : lo ≤ t) (hth : t < hi) (hsz : hi < lo + (ring_empty p cfg).capacity)
    (hmax : ∀ i, lo ≤ i → i < hi → i ≠ t → i % U32 < t % U32) :
    ring_recovered p cfg V =
      { ring_empty p cfg with
        count := t - lo + 1
        head_slot := (t + 1) % (ring_empty p cfg).capacity
        head_seq := (t + 1) % U32
        tail_slot := ((((t + 1) % (ring_empty p cfg).capacity + (ring_empty p cfg).capacity) % U32
          + U32 - (t - lo + 1)) % U32) % (ring_empty p cfg).capacity } := by
  have hs := scan_view_max V _ lo hi t hw hc hlt hth hmax
  have hwalk := walk_view_run V _ lo hi t hw hc hcU hlt hth hsz (t - lo + 1) 0
    (ring_empty p cfg).capacity (by omega) (by omega)
  rw [Nat.sub_zero, Nat.sub_zero, Nat.add_mod_right, Nat.add_mod_right] at hwalk
  have h1 : ((t % (ring_empty p cfg).capacity + 1) % U32) % (ring_empty p cfg).capacity
      = (t + 1) % (ring_empty p cfg).capacity := by
    have := Nat.mod_lt t hc
    rw [Nat.mod_eq_of_lt (show t % (ring_empty p cfg).capacity + 1 < U32 by omega),
      succ_mod_mod]
  have h2 : (t % U32 + 1) % U32 = (t + 1) % U32 := succ_mod_mod t U32
  simp only [ring_recovered, hs, Bool.not_true, Bool.false_eq_true, if_false, hwalk, h1, h2]

/-- `fram_ring_peek_newest` on a ring whose newest slot holds a committed
record. -/
theorem ring_peek_newest_rec (ring : fram_ring_t) (p : fram_partition_t) (pm : fram_pm_t)
    (pmem : Nat → Nat) (t seq now : Nat) (payload buf : List Nat) (cap s0 t0 : Nat)
    (g : RingGeom ring p) (h : PmOK pm p pmem) (hcount : ring.count ≠ 0)
    (hhead : ring.head_slot = (t + 1) % ring.capacity)
    (hseq : seq < U32) (hl : payload.length ≤ ring.max_payload)
    (hl16 : payload.length ≤ UINT16_MAX) (hcap : payload.length ≤ cap)
    (hrec : SlotRec pmem ring (t % ring.capacity)
      (ring_header_for ring.magic seq now payload) payload) :
    ∃ pm1, fram_ring_peek_newest ring pm
        { payload := some buf, len := some cap, seq := some s0, ts_us := some t0 } =
        (ESP_OK, { payload := some (payload ++ buf.drop payload.length),
                   len := some payload.length, seq := some seq, ts_us := some (now % U64) },
          pm1) ∧ PmOK pm1 p pmem := by
  have hcpos := g.capacity_pos
  have hsmall := ring_capacity_small ring p pm pmem g h
  obtain ⟨pm1, hr, hok⟩ := ring_read_slot_rec ring p pm pmem (t % ring.capacity) seq now
    payload buf cap s0 t0 g h (Nat.mod_lt _ hcpos) hseq hl hl16 hcap hrec
  refine ⟨pm1, ?_, hok⟩
  unfold fram_ring_peek_newest fram_ring_lock
  simp only [Option.isNone_some, Bool.false_eq_true, if_false, g.ready, Bool.not_true,
    hcount, or_self, g.mutex, mutex_take, ne_eq, not_true_eq_false]
  rw [hhead, pred_slot_eq (t + 1) ring.capacity (by omega) hcpos hsmall, Nat.add_sub_cancel]
  exact hr

/-- The ring after `fram_ring_init` on an erased partition and a successful
run of appends. -/
theorem ring_run_spec (K : Kconfig) (ring0 ring1 ring2 : fram_ring_t) (pm pm1 pm2 : fram_pm_t)
    (p : fram_partition_t) (pmem : Nat → Nat) (cfg : fram_ring_config_t)
    (entries : List (List Nat × Nat))
    (hK : K.FRAM_RING_MAX_PAYLOAD + RING_HEADER_SIZE + 1 < U32) (hmagic : cfg.magic < U32)
    (h : PmOK pm p pmem) (hfind : fram_pm_find pm cfg.partition_name = some p)
    (herased : ∀ i, i < p.size → pmem i = 0xFF)
    (hinit : fram_ring_init K ring0 pm cfg = (ESP_OK, ring1, pm1))
    (happ : fram_ring_append_all ring1 pm1 entries = (ESP_OK, ring2, pm2)) :
    ∃ pmem2, RingGeom ring2 p ∧ PmOK pm2 p pmem2 ∧ RingAfter ring2 pmem2 entries ∧
      ring1 = ring_empty p cfg ∧ ring2.capacity = ring1.capacity ∧
      ring2.max_payload = ring1.max_payload ∧ ring2.magic = ring1.magic ∧
      ring2.entry_size = ring1.entry_size ∧ PmSame pm pm2 := by
  obtain ⟨hr1, g1, h1, inv1⟩ := ring_init_erased K ring0 ring1 pm pm1 p pmem cfg hfind h herased
    hK hmagic hinit
  obtain ⟨pmem2, g2, h2, inv2, e1, e2, e3, e4⟩ := ring_append_all_spec p entries ring1 ring2
    pm1 pm2 pmem [] g1 h1 inv1 happ
  rw [List.nil_append] at inv2
  have s1 := fram_ring_init_same K ring0 pm cfg
  rw [hinit] at s1
  have s2 := fram_ring_append_all_same entries ring1 pm1
  rw [happ] at s2
  exact ⟨pmem2, g2, h2, inv2, hr1, e1, e2, e3, e4, PmSame.trans_same _ _ _ s1 s2⟩

/-- C2. Ring append-then-peek-newest: on a working, erased (all 0xFF)
partition, with a build configuration whose maximal payload fits the 32-bit
slot size, after `fram_ring_init` returned `ESP_OK` and `k` appends with
`1 ≤ k ≤ capacity` all returned `ESP_OK` (every payload then is at most
`max_payload` long), `fram_ring_peek_newest` with a buffer that holds the last
payload returns `ESP_OK` with the payload `p_{k-1}` at the start of the buffer,
its length, and `seq = k - 1`. -/
theorem ring_append_then_peek_newest (K : Kconfig) (ring0 ring1 ring2 : fram_ring_t)
    (pm pm1 pm2 : fram_pm_t) (p : fram_partition_t) (pmem : Nat → Nat)
    (cfg : fram_ring_config_t) (entries : List (List Nat × Nat)) (buf : List Nat)
    (cap s0 t0 : Nat)
    (hK : K.FRAM_RING_MAX_PAYLOAD + RING_HEADER_SIZE + 1 < U32) (hmagic : cfg.magic < U32)
    (h : PmOK pm p pmem) (hfind : fram_pm_find pm cfg.partition_name = some p)
    (herased : ∀ i, i < p.size → pmem i = 0xFF)
    (hinit : fram_ring_init K ring0 pm cfg = (ESP_OK, ring1, pm1))
    (hk1 : 1 ≤ entries.length) (hk2 : entries.length ≤ fram_ring_capacity ring1)
    (happ : fram_ring_append_all ring1 pm1 entries = (ESP_OK, ring2, pm2))
    (hcap : (entries.getD (entries.length - 1) ([], 0)).1.length ≤ cap) :
    (∀ e ∈ entries, e.1.length ≤ cfg.max_payload) ∧
    ∃ pm3, fram_ring_peek_newest ring2 pm2
        { payload := some buf, len := some cap, seq := some s0, ts_us := some t0 } =
      (ESP_OK,
        { payload := some ((entries.getD (entries.length - 1) ([], 0)).1
            ++ buf.drop (entries.getD (entries.length - 1) ([], 0)).1.length)
          len := some (entries.getD (entries.length - 1) ([], 0)).1.length
          seq := some (entries.length - 1)
          ts_us := some ((entries.getD (entries.length - 1) ([], 0)).2 % U64) }, pm3) := by
  obtain ⟨pmem2, g2, h2, inv2, hr1, e1, e2, e3, e4, _⟩ := ring_run_spec K ring0 ring1 ring2 pm
    pm1 pm2 p pmem cfg entries hK hmagic h hfind herased hinit happ
  have hcU := ring_capacity_lt ring2 p pm2 pmem2 g2 h2
  obtain ⟨pm3, hp, _⟩ := ring_peek_newest_after ring2 p pm2 pmem2 entries buf cap s0 t0 g2 h2
    inv2 hk1 hcap
  have hseq : (entries.length - 1) % U32 = entries.length - 1 := by
    apply Nat.mod_eq_of_lt
    unfold fram_ring_capacity at hk2
    omega
  rw [hseq] at hp
  refine ⟨?_, pm3, hp⟩
  intro e he
  obtain ⟨i, hi, hget⟩ := List.getElem_of_mem he
  have hb := (inv2.bounded i hi).1
  rw [List.getD_eq_getElem _ _ hi, hget, e2, hr1] at hb
  exact hb

/-- C3. Ring overflow overwrites the oldest: on a working, erased partition
with capacity `c`, after `fram_ring_init` returned `ESP_OK` and `c + m` appends
(`c + m < 2^32`) all returned `ESP_OK`, `fram_ring_count` is `c`,
`fram_ring_peek_oldest` returns payload `p_m` with `seq = m`, and
`fram_ring_peek_newest` returns payload `p_{c+m-1}` with `seq = c + m - 1`. -/
theorem ring_overflow_overwrites_oldest (K : Kconfig) (ring0 ring1 ring2 : fram_ring_t)
    (pm pm1 pm2 : fram_pm_t) (p : fram_partition_t) (pmem : Nat → Nat)
    (cfg : fram_ring_config_t) (entries : List (List Nat × Nat)) (m : Nat) (buf : List Nat)
    (cap s0 t0 : Nat)
    (hK : K.FRAM_RING_MAX_PAYLOAD + RING_HEADER_SIZE + 1 < U32) (hmagic : cfg.magic < U32)
    (h : PmOK pm p pmem) (hfind : fram_pm_find pm cfg.partition_name = some p)
    (herased : ∀ i, i < p.size → pmem i = 0xFF)
    (hinit : fram_ring_init K ring0 pm cfg = (ESP_OK, ring1, pm1))
    (hm : entries.length = fram_ring_capacity ring1 + m) (hm32 : entries.length < U32)
    (happ : fram_ring_append_all ring1 pm1 entries = (ESP_OK, ring2, pm2))
    (hcap : ∀ e ∈ entries, e.1.length ≤ cap) :
    fram_ring_count ring2 = fram_ring_capacity ring1 ∧
    (∃ pm3, fram_ring_peek_oldest ring2 pm2
        { payload := some buf, len := some cap, seq := some s0, ts_us := some t0 } =
      (ESP_OK,
        { payload := some ((entries.getD m ([], 0)).1
            ++ buf.drop (entries.getD m ([], 0)).1.length)
          len := some (entries.getD m ([], 0)).1.length
          seq := some m
          ts_us := some ((entries.getD m ([], 0)).2 % U64) }, pm3)) ∧
    (∃ pm3, fram_ring_peek_newest ring2 pm2
        { payload := some buf, len := some cap, seq := some s0, ts_us := some t0 } =
      (ESP_OK,
        { payload := some ((entries.getD (entries.length - 1) ([], 0)).1
            ++ buf.drop (entries.getD (entries.length - 1) ([], 0)).1.length)
          len := some (entries.getD (entries.length - 1) ([], 0)).1.length
          seq := some (entries.length - 1)
          ts_us := some ((entries.getD (entries.length - 1) ([], 0)).2 % U64) }, pm3)) := by
  obtain ⟨pmem2, g2, h2, inv2, hr1, e1, e2, e3, e4, _⟩ := ring_run_spec K ring0 ring1 ring2 pm
    pm1 pm2 p pmem cfg entries hK hmagic h hfind herased hinit happ
  have hcpos := g2.capacity_pos
  unfold fram_ring_capacity at hm
  rw [← e1] at hm
  have hn : 0 < entries.length := by omega
  have hmin : min entries.length ring2.capacity = ring2.capacity := Nat.min_eq_right (by omega)
  have hidx : entries.length - min entries.length ring2.capacity = m := by
    rw [hmin]; omega
  have hget : ∀ i, i < entries.length → (entries.getD i ([], 0)).1.length ≤ cap := by
    intro i hi
    rw [List.getD_eq_getElem _ _ hi]
    exact hcap _ (List.getElem_mem _)
  obtain ⟨pm3, hp, _⟩ := ring_peek_oldest_after ring2 p pm2 pmem2 entries buf cap s0 t0 g2 h2
    inv2 hn (by rw [hidx]; exact hget m (by omega))
  obtain ⟨pm4, hq, _⟩ := ring_peek_newest_after ring2 p pm2 pmem2 entries buf cap s0 t0 g2 h2
    inv2 hn (hget _ (by omega))
  rw [hidx, Nat.mod_eq_of_lt (show m < U32 by omega)] at hp
  rw [Nat.mod_eq_of_lt (show entries.length - 1 < U32 by omega)] at hq
  refine ⟨?_, ⟨pm3, hp⟩, ⟨pm4, hq⟩⟩
  unfold fram_ring_count fram_ring_capacity
  rw [inv2.count, hmin, e1]

theorem triple_eta_ok {α β : Type} (x : esp_err_t × α × β) (h : x.1 = ESP_OK) :
    x = (ESP_OK, x.2.1, x.2.2) := by
  obtain ⟨a, b, c⟩ := x
  simp only at h
  rw [h]

/-! ### The example ring of `test_fram.c` -/

theorem example_pm_ring_ok : PmOK example_pm example_ring_part (fun _ => 0xFF) :=
  ⟨rfl, by decide, (fun _ => 0xFF), 32768, ⟨rfl, rfl, rfl, rfl, by decide, rfl⟩, by decide,
    fun _ _ => rfl⟩

theorem example_ring_find :
    fram_pm_find example_pm example_ring_cfg.partition_name = some example_ring_part := by
  decide

theorem example_ring_init_ok :
    fram_ring_init example_K example_ring0 example_pm example_ring_cfg =
      (ESP_OK, (fram_ring_init example_K example_ring0 example_pm example_ring_cfg).2.1,
        (fram_ring_init example_K example_ring0 example_pm example_ring_cfg).2.2) := by
  apply triple_eta_ok
  obtain ⟨pm1, hi, _⟩ := ring_init_view example_K example_ring0 example_pm example_ring_part
    (fun _ => 0xFF) example_ring_cfg (fun _ => none) example_ring_find example_pm_ring_ok
    (by decide) (by decide) (by decide) (by decide) (by decide)
    (fun slot _ => ⟨fun q hq => Option.noConfusion hq,
      fun _ => (by decide : (255 : Nat) ≠ FRAM_RING_COMMIT)⟩)
  rw [hi]

theorem example_ring_capacity :
    fram_ring_capacity
      (fram_ring_init example_K example_ring0 example_pm example_ring_cfg).2.1 = 99 := by
  obtain ⟨hr1, _, _, _⟩ := ring_init_erased example_K example_ring0 _ example_pm _
    example_ring_part (fun _ => 0xFF) example_ring_cfg example_ring_find example_pm_ring_ok
    (fun _ _ => rfl) (by decide) (by decide) example_ring_init_ok
  rw [hr1]
  decide

theorem example_ring_run_ok (entries : List (List Nat × Nat))
    (hb : ∀ e ∈ entries, e.1.length ≤ 16) :
    fram_ring_append_all
      (fram_ring_init example_K example_ring0 example_pm example_ring_cfg).2.1
      (fram_ring_init example_K example_ring0 example_pm example_ring_cfg).2.2 entries =
      (ESP_OK, (example_ring_run entries).2.1, (example_ring_run entries).2.2) := by
  obtain ⟨hr1, g1, h1, inv1⟩ := ring_init_erased example_K example_ring0 _ example_pm _
    example_ring_part (fun _ => 0xFF) example_ring_cfg example_ring_find example_pm_ring_ok
    (fun _ _ => rfl) (by decide) (by decide) example_ring_init_ok
  have hmp : (fram_ring_init example_K example_ring0 example_pm example_ring_cfg).2.1.max_payload
      = 16 := by
    rw [hr1]; rfl
  obtain ⟨r, q, pmem1, hall, _⟩ := ring_append_all_ok example_ring_part entries _ _ _ [] g1 h1
    inv1 (fun e he => by
      rw [hmp]
      have := hb e he
      exact ⟨this, Nat.le_trans this (by decide)⟩)
  apply triple_eta_ok (example_ring_run entries)
  show (fram_ring_append_all _ _ entries).1 = ESP_OK
  rw [hall]

/-- Witness for C2: the three appends of the ring test on the erased example
partition, then `fram_ring_peek_newest` into a four-byte buffer. -/
theorem ring_append_then_peek_newest_witness :
    (∀ e ∈ example_ring_entries, e.1.length ≤ example_ring_cfg.max_payload) ∧
    ∃ pm3, fram_ring_peek_newest (example_ring_run example_ring_entries).2.1
        (example_ring_run example_ring_entries).2.2
        { payload := some [0, 0, 0, 0], len := some 4, seq := some 0, ts_us := some 0 } =
      (ESP_OK,
        { payload := some [0xA7, 0xA5, 0xA5, 0xA5], len := some 4, seq := some 2,
          ts_us := some 30 }, pm3) :=
  ring_append_then_peek_newest example_K example_ring0 _ _ example_pm _ _ example_ring_part
    (fun _ => 0xFF) example_ring_cfg example_ring_entries [0, 0, 0, 0] 4 0 0 (by decide)
    (by decide) example_pm_ring_ok example_ring_find (fun _ _ => rfl) example_ring_init_ok
    (by decide) (by rw [example_ring_capacity]; decide)
    (example_ring_run_ok example_ring_entries (by decide)) (by decide)

theorem example_ring_overflow_len (e : List Nat × Nat) (he : e ∈ example_ring_overflow) :
    e.1.length = 1 := by
  unfold example_ring_overflow at he
  obtain ⟨i, _, rfl⟩ := List.mem_map.mp he
  rfl

/-- Witness for C3: one hundred appends on the example ring of capacity 99;
the oldest record is then record 1 and the newest record 99. -/
theorem ring_overflow_overwrites_oldest_witness :
    fram_ring_count (example_ring_run example_ring_overflow).2.1 = 99 ∧
    (∃ pm3, fram_ring_peek_oldest (example_ring_run example_ring_overflow).2.1
        (example_ring_run example_ring_overflow).2.2
        { payload := some [0], len := some 1, seq := some 0, ts_us := some 0 } =
      (ESP_OK, { payload := some [1], len := some 1, seq := some 1, ts_us := some 1 }, pm3)) ∧
    (∃ pm3, fram_ring_peek_newest (example_ring_run example_ring_overflow).2.1
        (example_ring_run example_ring_overflow).2.2
        { payload := some [0], len := some 1, seq := some 0, ts_us := some 0 } =
      (ESP_OK, { payload := some [99], len := some 1, seq := some 99, ts_us := some 99 },
        pm3)) := by
  have hw := ring_overflow_overwrites_oldest example_K example_ring0 _ _ example_pm _ _
    example_ring_part (fun _ => 0xFF) example_ring_cfg example_ring_overflow 1 [0] 1 0 0
    (by decide) (by decide) example_pm_ring_ok example_ring_find (fun _ _ => rfl)
    example_ring_init_ok (by rw [example_ring_capacity]; rfl) (by decide)
    (example_ring_run_ok example_ring_overflow
      (fun e he => by rw [example_ring_overflow_len e he]; decide))
    (fun e he => by rw [example_ring_overflow_len e he])
  rw [example_ring_capacity] at hw
  exact hw

/-- Re-initialising after the commit byte of the newest record is zeroed:
`fram_ring_init` recovers the ring from the torn view, and the older records of
the window are still stored. -/
theorem ring_reinit_torn (K : Kconfig) (ring0 ring1 ring2 ringX : fram_ring_t)
    (pm pm1 pm2 : fram_pm_t) (p : fram_partition_t) (pmem : Nat → Nat)
    (cfg : fram_ring_config_t) (entries : List (List Nat × Nat))
    (hK : K.FRAM_RING_MAX_PAYLOAD + RING_HEADER_SIZE + 1 < U32) (hmagic : cfg.magic < U32)
    (h : PmOK pm p pmem) (hfind : fram_pm_find pm cfg.partition_name = some p)
    (herased : ∀ i, i < p.size → pmem i = 0xFF)
    (hinit : fram_ring_init K ring0 pm cfg = (ESP_OK, ring1, pm1))
    (hn : 1 ≤ entries.length)
    (happ : fram_ring_append_all ring1 pm1 entries = (ESP_OK, ring2, pm2)) :
    ∃ pm4 pmem2 pmem3,
      fram_ring_init K ringX (ring_tear_newest ring2 pm2 p) cfg =
        (ESP_OK, ring_recovered p cfg
          (ring_torn_view entries.length (ring_empty p cfg).capacity), pm4) ∧
      PmOK pm4 p pmem3 ∧ RingGeom (ring_empty p cfg) p ∧
      RingGeom ring2 p ∧ PmOK pm2 p pmem2 ∧ RingAfter ring2 pmem2 entries ∧
      ring2.capacity = (ring_empty p cfg).capacity ∧
      ring2.max_payload = cfg.max_payload ∧
      ∀ i, i + 1 < entries.length → entries.length ≤ i + (ring_empty p cfg).capacity →
        SlotRec pmem3 (ring_empty p cfg) (i % (ring_empty p cfg).capacity)
          (ring_header_for cfg.magic (i % U32) (entries.getD i ([], 0)).2
            (entries.getD i ([], 0)).1)
          (entries.getD i ([], 0)).1 := by
  obtain ⟨pmem2, g2, h2, inv2, hr1, e1, e2, e3, e4, hsame⟩ := ring_run_spec K ring0 ring1 ring2
    pm pm1 pm2 p pmem cfg entries hK hmagic h hfind herased hinit happ
  obtain ⟨hmp, hle, hcap⟩ := ring_init_ok_cfg K ring0 ring1 pm pm1 p cfg hfind hK hinit
  obtain ⟨g, hes⟩ := ring_empty_geom K p cfg hle hK hmagic hcap
  subst hr1
  have hsame3 := (ring_tear_ok ring2 p pm2 pmem2 entries g2 h2 inv2 hn).2
  obtain ⟨pmem3, h3, hV2, hrec2⟩ : ∃ pmem3, PmOK (ring_tear_newest ring2 pm2 p) p pmem3 ∧
      RingView ring2 pmem3 (ring_torn_view entries.length ring2.capacity) ∧
      ∀ i, i + 1 < entries.length → entries.length ≤ i + ring2.capacity →
        SlotRec pmem3 ring2 (i % ring2.capacity)
          (ring_header_for ring2.magic (i % U32) (entries.getD i ([], 0)).2
            (entries.getD i ([], 0)).1)
          (entries.getD i ([], 0)).1 :=
    ⟨_, (ring_tear_ok ring2 p pm2 pmem2 entries g2 h2 inv2 hn).1,
      ring_torn_view_ok ring2 p pmem2 entries g2 inv2 hn,
      fun i hi hw => ring_torn_records ring2 p pmem2 entries g2 inv2 i hi hw⟩
  have hfind3 : fram_pm_find (ring_tear_newest ring2 pm2 p) cfg.partition_name = some p := by
    rw [fram_pm_find_same pm _ _ (PmSame.trans_same _ _ _ hsame hsame3)]
    exact hfind
  have hV := ring_view_congr ring2 (ring_empty p cfg) _ _ e1 e4 e2 e3 hV2
  rw [e1] at hV
  obtain ⟨pm4, hi4, h4⟩ := ring_init_view K ringX _ p _ cfg _ hfind3 h3 hmp hle hK hmagic hcap hV
  refine ⟨pm4, pmem2, pmem3, hi4, h4, g, g2, h2, inv2, e1, e2, ?_⟩
  intro i hi hw
  have hrec := hrec2 i hi (by rw [e1]; exact hw)
  rw [e1, e3] at hrec
  exact ⟨by rw [← e4]; exact hrec.image, by rw [← e4, ← e2]; exact hrec.commit⟩

/-- C6 (amended). Ring recovery under a torn newest record: on a working,
erased partition, after `fram_ring_init` and `n` successful appends with
`1 ≤ n ≤ 2^32` (including `n > capacity`), zeroing the commit byte of the
newest slot `(head_slot + capacity - 1) mod capacity` and running
`fram_ring_init` again returns `ESP_OK` with a count equal to the previous
count minus 1; the newest record before the tear had `seq = n - 1`, and when
the new count is not zero `fram_ring_peek_newest` returns the record `n - 2`:
its payload, its original length and `seq = n - 1 - 1`. -/
theorem ring_recovery_torn_newest (K : Kconfig) (ring0 ring1 ring2 ringX : fram_ring_t)
    (pm pm1 pm2 : fram_pm_t) (p : fram_partition_t) (pmem : Nat → Nat)
    (cfg : fram_ring_config_t) (entries : List (List Nat × Nat)) (buf : List Nat)
    (cap s0 t0 : Nat)
    (hK : K.FRAM_RING_MAX_PAYLOAD + RING_HEADER_SIZE + 1 < U32) (hmagic : cfg.magic < U32)
    (h : PmOK pm p pmem) (hfind : fram_pm_find pm cfg.partition_name = some p)
    (herased : ∀ i, i < p.size → pmem i = 0xFF)
    (hinit : fram_ring_init K ring0 pm cfg = (ESP_OK, ring1, pm1))
    (hn : 1 ≤ entries.length) (hn32 : entries.length ≤ U32)
    (happ : fram_ring_append_all ring1 pm1 entries = (ESP_OK, ring2, pm2))
    (hcap : ∀ e ∈ entries, e.1.length ≤ cap) :
    (fram_ring_init K ringX (ring_tear_newest ring2 pm2 p) cfg).1 = ESP_OK ∧
    fram_ring_count (fram_ring_init K ringX (ring_tear_newest ring2 pm2 p) cfg).2.1
      = fram_ring_count ring2 - 1 ∧
    (∃ pmq, fram_ring_peek_newest ring2 pm2
        { payload := some buf, len := some cap, seq := some s0, ts_us := some t0 } =
      (ESP_OK,
        { payload := some ((entries.getD (entries.length - 1) ([], 0)).1
            ++ buf.drop (entries.getD (entries.length - 1) ([], 0)).1.length)
          len := some (entries.getD (entries.length - 1) ([], 0)).1.length
          seq := some (entries.length - 1)
          ts_us := some ((entries.getD (entries.length - 1) ([], 0)).2 % U64) }, pmq)) ∧
    (fram_ring_count (fram_ring_init K ringX (ring_tear_newest ring2 pm2 p) cfg).2.1 ≠ 0 →
      ∃ pm5, fram_ring_peek_newest
          (fram_ring_init K ringX (ring_tear_newest ring2 pm2 p) cfg).2.1
          (fram_ring_init K ringX (ring_tear_newest ring2 pm2 p) cfg).2.2
          { payload := some buf, len := some cap, seq := some s0, ts_us := some t0 } =
        (ESP_OK,
          { payload := some ((entries.getD (entries.length - 2) ([], 0)).1
              ++ buf.drop (entries.getD (entries.length - 2) ([], 0)).1.length)
            len := some (entries.getD (entries.length - 2) ([], 0)).1.length
            seq := some (entries.length - 1 - 1)
            ts_us := some ((entries.getD (entries.length - 2) ([], 0)).2 % U64) }, pm5)) := by
  obtain ⟨pm4, pmem2, pmem3, hi4, h4, g, g2, h2, inv2, e1, e2, hrecs⟩ := ring_reinit_torn K
    ring0 ring1 ring2 ringX pm pm1 pm2 p pmem cfg entries hK hmagic h hfind herased hinit hn happ
  have hc := g.capacity_pos
  have hcU := ring_capacity_small _ p pm4 pmem3 g h4
  have hget : ∀ i, i < entries.length → (entries.getD i ([], 0)).1.length ≤ cap := by
    intro i hi
    rw [List.getD_eq_getElem _ _ hi]
    exact hcap _ (List.getElem_mem _)
  obtain ⟨pmq, hq, _⟩ := ring_peek_newest_after ring2 p pm2 pmem2 entries buf cap s0 t0 g2 h2
    inv2 (by omega) (hget _ (by omega))
  rw [Nat.mod_eq_of_lt (show entries.length - 1 < U32 by omega)] at hq
  have hw := torn_view_window entries.length (ring_empty p cfg).capacity hc hn
  have hmn : min entries.length (ring_empty p cfg).capacity ≤ entries.length ∧
      min entries.length (ring_empty p cfg).capacity ≤ (ring_empty p cfg).capacity ∧
      1 ≤ min entries.length (ring_empty p cfg).capacity ∧
      (entries.length = 1 → min entries.length (ring_empty p cfg).capacity = 1) := by
    rw [Nat.min_def]
    split_ifs <;> omega
  have hcount2 : fram_ring_count ring2 = min entries.length (ring_empty p cfg).capacity := by
    unfold fram_ring_count
    rw [inv2.count, e1]
  rw [hi4, hcount2]
  by_cases hmin : min entries.length (ring_empty p cfg).capacity ≤ 1
  · rw [ring_recovered_empty p cfg _ _ _ hw (by omega)]
    refine ⟨rfl, ?_, ⟨pmq, hq⟩, fun hne => absurd rfl hne⟩
    show 0 = _
    omega
  · have hb := inv2.bounded (entries.length - 2) (by omega)
    rw [e2] at hb
    have hR := ring_recovered_window p cfg _ _ _ (entries.length - 2) hw hc hcU (by omega)
      (by omega) (by omega) (fun i h1 h2 h3 => by
        rw [U32_eq] at hn32 ⊢
        rw [Nat.mod_eq_of_lt (by omega), Nat.mod_eq_of_lt (by omega)]
        omega)
    have hrec := hrecs (entries.length - 2) (by omega) (by omega)
    rw [Nat.mod_eq_of_lt (show entries.length - 2 < U32 by omega)] at hrec
    have hRc : (ring_recovered p cfg
        (ring_torn_view entries.length (ring_empty p cfg).capacity)).count
        = entries.length - 2
          - (entries.length - min entries.length (ring_empty p cfg).capacity) + 1 := by
      rw [hR]
    have hRh : (ring_recovered p cfg
        (ring_torn_view entries.length (ring_empty p cfg).capacity)).head_slot
        = (entries.length - 2 + 1) % (ring_recovered p cfg
          (ring_torn_view entries.length (ring_empty p cfg).capacity)).capacity := by
      rw [hR]
    have gR : RingGeom (ring_recovered p cfg
        (ring_torn_view entries.length (ring_empty p cfg).capacity)) p := by
      rw [hR]
      exact ⟨g.part, g.entry_size, g.capacity_pos, g.fits, g.magic, g.mutex, g.ready⟩
    have hRrec : SlotRec pmem3 (ring_recovered p cfg
        (ring_torn_view entries.length (ring_empty p cfg).capacity))
        ((entries.length - 2) % (ring_recovered p cfg
          (ring_torn_view entries.length (ring_empty p cfg).capacity)).capacity)
        (ring_header_for (ring_recovered p cfg
          (ring_torn_view entries.length (ring_empty p cfg).capacity)).magic
          (entries.length - 2) (entries.getD (entries.length - 2) ([], 0)).2
          (entries.getD (entries.length - 2) ([], 0)).1)
        (entries.getD (entries.length - 2) ([], 0)).1 := by
      rw [hR]
      exact ⟨hrec.image, hrec.commit⟩
    have hRm : (ring_recovered p cfg
        (ring_torn_view entries.length (ring_empty p cfg).capacity)).max_payload
        = cfg.max_payload := by
      rw [hR]; rfl
    generalize ring_recovered p cfg
      (ring_torn_view entries.length (ring_empty p cfg).capacity) = R at hRc hRh gR hRrec hRm
    refine ⟨rfl, ?_, ⟨pmq, hq⟩, fun hne => ?_⟩
    · show R.count = _
      rw [hRc]
      omega
    · obtain ⟨pm5, hp5, _⟩ := ring_peek_newest_rec R p pm4 pmem3 (entries.length - 2)
        (entries.length - 2) (entries.getD (entries.length - 2) ([], 0)).2
        (entries.getD (entries.length - 2) ([], 0)).1 buf cap s0 t0 gR h4 hne hRh
        (by omega) (by rw [hRm]; exact hb.1) hb.2 (hget _ (by omega)) hRrec
      refine ⟨pm5, ?_⟩
      show fram_ring_peek_newest R pm4 _ = _
      rw [hp5]
      have : entries.length - 1 - 1 = entries.length - 2 := by omega
      rw [this]

theorem fram_ring_count_eq (ring : fram_ring_t) : fram_ring_count ring = ring.count := rfl

theorem example_ring_wrap_length : example_ring_wrap.length = 4294967298 :=
  List.length_replicate _ _

theorem example_ring_wrap_bounded (e : List Nat × Nat) (he : e ∈ example_ring_wrap) :
    e.1.length ≤ 16 := by
  rw [List.eq_of_mem_replicate he]
  decide

theorem example_ring_empty_capacity :
    (ring_empty example_ring_part example_ring_cfg).capacity = 99 := by
  decide

theorem example_wrap_window :
    ViewWindow (ring_torn_view 4294967298 (ring_empty example_ring_part example_ring_cfg).capacity)
      (ring_empty example_ring_part example_ring_cfg).capacity 4294967199 4294967297 := by
  have hw := torn_view_window 4294967298 99 (by decide) (by decide)
  have hmin : min 4294967298 99 = 99 := by decide
  rw [hmin] at hw
  have hlo : 4294967298 - 99 = 4294967199 := by decide
  have hhi : 4294967298 - 1 = 4294967297 := by decide
  rw [hlo, hhi] at hw
  rw [example_ring_empty_capacity]
  exact hw

theorem example_wrap_recovered_count :
    (ring_recovered example_ring_part example_ring_cfg
      (ring_torn_view 4294967298 (ring_empty example_ring_part example_ring_cfg).capacity)).count
      = 97 := by
  have hR := ring_recovered_window example_ring_part example_ring_cfg
    (ring_torn_view 4294967298 (ring_empty example_ring_part example_ring_cfg).capacity)
    4294967199 4294967297 4294967295 example_wrap_window
    (by rw [example_ring_empty_capacity]; decide)
    (by rw [example_ring_empty_capacity]; decide) (by decide) (by decide)
    (by rw [example_ring_empty_capacity]; decide)
    (fun i h1 h2 h3 => by
      rw [U32_eq]
      omega)
  rw [hR]

theorem example_wrap_reinit :
    fram_ring_count (example_ring_run example_ring_wrap).2.1 = 99 ∧
    ∃ pm4, fram_ring_init example_K example_ring0
      (ring_tear_newest (example_ring_run example_ring_wrap).2.1
        (example_ring_run example_ring_wrap).2.2 example_ring_part) example_ring_cfg =
      (ESP_OK, ring_recovered example_ring_part example_ring_cfg
        (ring_torn_view 4294967298 (ring_empty example_ring_part example_ring_cfg).capacity),
        pm4) := by
  have hrun := example_ring_run_ok example_ring_wrap example_ring_wrap_bounded
  obtain ⟨pm4, pmem2, pmem3, hi4, h4, g, g2, h2, inv2, e1, e2, hrecs⟩ := ring_reinit_torn
    example_K example_ring0 _ _ example_ring0 example_pm _ _ example_ring_part (fun _ => 0xFF)
    example_ring_cfg example_ring_wrap (by decide) (by decide) example_pm_ring_ok
    example_ring_find (fun _ _ => rfl) example_ring_init_ok
    (by rw [example_ring_wrap_length]; decide) hrun
  rw [example_ring_wrap_length] at hi4
  refine ⟨?_, pm4, hi4⟩
  rw [fram_ring_count_eq, inv2.count, e1, example_ring_wrap_length, example_ring_empty_capacity]
  decide

/-- Counterexample to C6 as stated: on the example ring (capacity 99), after
`fram_ring_init` and `2^32 + 2` successful appends the count is 99 and the
slots hold the sequence numbers `2^32 - 97 .. 2^32 - 1, 0, 1`. With the commit
byte of the newest record zeroed, the scan of `fram_ring_init` takes
`2^32 - 1` for the highest sequence number, and the recovered count is 97, not
`99 - 1`. -/
theorem ring_recovery_torn_newest_counterexample :
    fram_ring_init example_K example_ring0 example_pm example_ring_cfg =
      (ESP_OK, (fram_ring_init example_K example_ring0 example_pm example_ring_cfg).2.1,
        (fram_ring_init example_K example_ring0 example_pm example_ring_cfg).2.2) ∧
    fram_ring_append_all
      (fram_ring_init example_K example_ring0 example_pm example_ring_cfg).2.1
      (fram_ring_init example_K example_ring0 example_pm example_ring_cfg).2.2
      example_ring_wrap =
      (ESP_OK, (example_ring_run example_ring_wrap).2.1,
        (example_ring_run example_ring_wrap).2.2) ∧
    fram_ring_count (example_ring_run example_ring_wrap).2.1 = 99 ∧
    (fram_ring_init example_K example_ring0
      (ring_tear_newest (example_ring_run example_ring_wrap).2.1
        (example_ring_run example_ring_wrap).2.2 example_ring_part) example_ring_cfg).1
      = ESP_OK ∧
    fram_ring_count (fram_ring_init example_K example_ring0
      (ring_tear_newest (example_ring_run example_ring_wrap).2.1
        (example_ring_run example_ring_wrap).2.2 example_ring_part) example_ring_cfg).2.1
      = 97 := by
  obtain ⟨hc, pm4, hi4⟩ := example_wrap_reinit
  refine ⟨example_ring_init_ok,
    example_ring_run_ok example_ring_wrap example_ring_wrap_bounded, hc, ?_, ?_⟩
  · rw [hi4]
  · rw [hi4, fram_ring_count_eq]
    exact example_wrap_recovered_count

/-- Witness for C6: the ring test of `test_fram.c`. After three appends the
commit byte of the newest slot is zeroed; `fram_ring_init` then recovers two
records and `fram_ring_peek_newest` returns the second one. -/
theorem ring_recovery_torn_newest_witness :
    (fram_ring_init example_K example_ring0
      (ring_tear_newest (example_ring_run example_ring_entries).2.1
        (example_ring_run example_ring_entries).2.2 example_ring_part) example_ring_cfg).1
      = ESP_OK ∧
    fram_ring_count (fram_ring_init example_K example_ring0
      (ring_tear_newest (example_ring_run example_ring_entries).2.1
        (example_ring_run example_ring_entries).2.2 example_ring_part) example_ring_cfg).2.1
      = fram_ring_count (example_ring_run example_ring_entries).2.1 - 1 ∧
    (∃ pmq, fram_ring_peek_newest (example_ring_run example_ring_entries).2.1
        (example_ring_run example_ring_entries).2.2
        { payload := some [0, 0, 0, 0], len := some 4, seq := some 0, ts_us := some 0 } =
      (ESP_OK,
        { payload := some [0xA7, 0xA5, 0xA5, 0xA5], len := some 4, seq := some 2,
          ts_us := some 30 }, pmq)) ∧
    (fram_ring_count (fram_ring_init example_K example_ring0
      (ring_tear_newest (example_ring_run example_ring_entries).2.1
        (example_ring_run example_ring_entries).2.2 example_ring_part) example_ring_cfg).2.1
      ≠ 0 →
      ∃ pm5, fram_ring_peek_newest
          (fram_ring_init example_K example_ring0
            (ring_tear_newest (example_ring_run example_ring_entries).2.1
              (example_ring_run example_ring_entries).2.2 example_ring_part)
            example_ring_cfg).2.1
          (fram_ring_init example_K example_ring0
            (ring_tear_newest (example_ring_run example_ring_entries).2.1
              (example_ring_run example_ring_entries).2.2 example_ring_part)
            example_ring_cfg).2.2
          { payload := some [0, 0, 0, 0], len := some 4, seq := some 0, ts_us := some 0 } =
        (ESP_OK,
          { payload := some [0xA6, 0xA5, 0xA5, 0xA5], len := some 4, seq := some 1,
            ts_us := some 20 }, pm5)) := by
  have hw := ring_recovery_torn_newest example_K example_ring0 _ _ example_ring0 example_pm _ _
    example_ring_part (fun _ => 0xFF) example_ring_cfg example_ring_entries [0, 0, 0, 0] 4 0 0
    (by decide) (by decide) example_pm_ring_ok example_ring_find (fun _ _ => rfl)
    example_ring_init_ok (by decide) (by decide)
    (example_ring_run_ok example_ring_entries (by decide)) (by decide)
  exact ⟨hw.1, hw.2.1, hw.2.2.1, hw.2.2.2⟩

/-! ## Vslot headers -/

theorem vslot_head_bytes_length (h : fram_vslot_header_t) : h.head_bytes.length = 20 := by
  simp [fram_vslot_header_t.head_bytes, le_bytes_length]

theorem vslot_to_bytes_length (h : fram_vslot_header_t) : h.to_bytes.length = 24 := by
  simp [fram_vslot_header_t.to_bytes, vslot_head_bytes_length, le_bytes_length]

theorem vslot_of_bytes_to_bytes (h : fram_vslot_header_t)
    (h1 : h.magic < 4294967296) (h2 : h.version < 4294967296)
    (h3 : h.ts_us < 18446744073709551616) (h4 : h.len < 4294967296)
    (h6 : h.crc32 < 4294967296) :
    fram_vslot_header_of_bytes h.to_bytes = h := by
  have e1 : slice h.to_bytes 0 4 = le_bytes 4 h.magic := by
    have := slice_mid [] (le_bytes 4 h.magic) (le_bytes 4 h.version ++ (le_bytes 8 h.ts_us ++
      (le_bytes 4 h.len ++ le_bytes 4 h.crc32))) 0 4 rfl
      (le_bytes_length _ _)
    simpa [fram_vslot_header_t.to_bytes, fram_vslot_header_t.head_bytes] using this
  have e2 : slice h.to_bytes 4 4 = le_bytes 4 h.version := by
    have := slice_mid (le_bytes 4 h.magic) (le_bytes 4 h.version) (le_bytes 8 h.ts_us ++
      (le_bytes 4 h.len ++ le_bytes 4 h.crc32)) 4 4
      (le_bytes_length _ _) (le_bytes_length _ _)
    simpa [fram_vslot_header_t.to_bytes, fram_vslot_header_t.head_bytes] using this
  have e3 : slice h.to_bytes 8 8 = le_bytes 8 h.ts_us := by
    have := slice_mid (le_bytes 4 h.magic ++ le_bytes 4 h.version) (le_bytes 8 h.ts_us)
      (le_bytes 4 h.len ++ le_bytes 4 h.crc32) 8 8
      (by simp [le_bytes_length]) (le_bytes_length _ _)
    simpa [fram_vslot_header_t.to_bytes, fram_vslot_header_t.head_bytes] using this
  have e4 : slice h.to_bytes 16 4 = le_bytes 4 h.len := by
    have := slice_mid (le_bytes 4 h.magic ++ le_bytes 4 h.version ++ le_bytes 8 h.ts_us)
      (le_bytes 4 h.len) (le_bytes 4 h.crc32) 16 4
      (by simp [le_bytes_length]) (le_bytes_length _ _)
    simpa [fram_vslot_header_t.to_bytes, fram_vslot_header_t.head_bytes] using this
  have e6 : slice h.to_bytes 20 4 = le_bytes 4 h.crc32 := by
    have := slice_mid h.head_bytes (le_bytes 4 h.crc32) [] 20 4
      (vslot_head_bytes_length h) (le_bytes_length _ _)
    simpa [fram_vslot_header_t.to_bytes] using this
  unfold fram_vslot_header_of_bytes
  rw [e1, e2, e3, e4, e6]
  simp only [le_val_le_bytes_4 _ h1, le_val_le_bytes_4 _ h2, le_val_le_bytes_8 _ h3,
    le_val_le_bytes_4 _ h4, le_val_le_bytes_4 _ h6]

theorem vslot_header_for_head (magic version now : Nat) (payload : List Nat) :
    (vslot_header_for magic version now payload).head_bytes =
      le_bytes 4 magic ++ (le_bytes 4 version ++ (le_bytes 8 (now % U64) ++
        le_bytes 4 payload.length)) := by
  simp only [vslot_header_for, fram_vslot_header_t.head_bytes]

theorem vslot_header_for_crc (magic version now : Nat) (payload : List Nat) :
    (vslot_header_for magic version now payload).crc32 =
      fram_crc32_le 0 ((vslot_header_for magic version now payload).head_bytes ++ payload) := by
  rw [vslot_header_for_head]
  simp only [vslot_header_for]

theorem vslot_header_for_roundtrip (magic version now : Nat) (payload : List Nat)
    (hm : magic < U32) (hs : version < U32) (hl : payload.length < U32) :
    fram_vslot_header_of_bytes (vslot_header_for magic version now payload).to_bytes
      = vslot_header_for magic version now payload := by
  apply vslot_of_bytes_to_bytes
  · exact hm
  · exact hs
  · exact Nat.mod_lt _ (by decide)
  · exact hl
  · rw [vslot_header_for_crc]
    exact fram_crc32_le_lt _ _

/-! ## Slot geometry -/

theorem vslot_slot_offset_eq (vs : fram_vslot_t) (p : fram_partition_t) (pm : fram_pm_t)
    (pmem : Nat → Nat) (g : VslotGeom vs p) (h : PmOK pm p pmem) (slot : Nat)
    (hs : slot < vs.slot_count) :
    fram_vslot_slot_offset vs slot = slot * vs.slot_size ∧
    fram_vslot_commit_offset vs slot
      = slot * vs.slot_size + VSLOT_HEADER_SIZE + vs.max_payload ∧
    (fram_vslot_slot_offset vs slot + VSLOT_HEADER_SIZE) % U32
      = slot * vs.slot_size + VSLOT_HEADER_SIZE ∧
    (slot + 1) * vs.slot_size ≤ p.size ∧ p.size < U32 := by
  obtain ⟨_, _, mem, size, hd, hfit, _⟩ := h
  have hsz := hd.size_lt
  have hes := g.slot_size
  have hle : (slot + 1) * vs.slot_size ≤ vs.slot_count * vs.slot_size :=
    Nat.mul_le_mul_right _ hs
  have hfits := g.fits
  have h24 : VSLOT_HEADER_SIZE = 24 := rfl
  have hexp : (slot + 1) * vs.slot_size = slot * vs.slot_size + vs.slot_size := by
    rw [Nat.add_mul, Nat.one_mul]
  have hlt : slot * vs.slot_size + vs.slot_size < U32 := by omega
  unfold fram_vslot_commit_offset fram_vslot_slot_offset
  rw [Nat.mod_eq_of_lt (by omega), Nat.mod_eq_of_lt (by omega), Nat.mod_eq_of_lt (by omega)]
  exact ⟨rfl, rfl, rfl, by omega, by omega⟩

/-- Payloads that fit a slot are shorter than `2^32`. -/
theorem vslot_max_payload_lt (vs : fram_vslot_t) (p : fram_partition_t) (pm : fram_pm_t)
    (pmem : Nat → Nat) (g : VslotGeom vs p) (h : PmOK pm p pmem) : vs.max_payload < U32 := by
  obtain ⟨_, _, _, hfit, hsz⟩ := vslot_slot_offset_eq vs p pm pmem g h 0 g.slot_count_pos
  have hes := g.slot_size
  omega

/-- The two parts of a slot image. -/
theorem vslot_rec_parts (pmem : Nat → Nat) (vs : fram_vslot_t) (slot : Nat)
    (hdr : fram_vslot_header_t) (payload : List Nat) (h : VSlotRec pmem vs slot hdr payload) :
    mem_read pmem (slot * vs.slot_size) VSLOT_HEADER_SIZE = hdr.to_bytes ∧
    mem_read pmem (slot * vs.slot_size + VSLOT_HEADER_SIZE) payload.length = payload := by
  have him := h.image
  rw [mem_read_add] at him
  have hl : (mem_read pmem (slot * vs.slot_size) VSLOT_HEADER_SIZE).length
      = hdr.to_bytes.length := by
    rw [mem_read_length, vslot_to_bytes_length]; rfl
  exact List.append_inj him hl

/-- A slot whose commit byte is not `0xA5` does not validate. -/
theorem vslot_validate_uncommitted (vs : fram_vslot_t) (p : fram_partition_t) (pm : fram_pm_t)
    (pmem : Nat → Nat) (slot : Nat) (g : VslotGeom vs p) (h : PmOK pm p pmem)
    (hs : slot < vs.slot_count)
    (hc : pmem (slot * vs.slot_size + VSLOT_HEADER_SIZE + vs.max_payload)
      ≠ FRAM_VSLOT_COMMIT) :
    ∃ pm1, fram_vslot_validate_slot vs pm slot = (ESP_ERR_NOT_FOUND, none, pm1)
      ∧ PmOK pm1 p pmem := by
  obtain ⟨ho, hco, hpo, hfit, hsz⟩ := vslot_slot_offset_eq vs p pm pmem g h slot hs
  have hes := g.slot_size
  have hexp : (slot + 1) * vs.slot_size = slot * vs.slot_size + vs.slot_size := by
    rw [Nat.add_mul, Nat.one_mul]
  obtain ⟨pm1, h1, hok1⟩ := fram_pm_read_ok pm p pmem
    (slot * vs.slot_size + VSLOT_HEADER_SIZE + vs.max_payload) 1 h (by decide) (by omega)
  refine ⟨pm1, ?_, hok1⟩
  unfold fram_vslot_validate_slot fram_vslot_read_commit
  simp only [g.part, hco, h1, mem_read_one, List.headD_cons, ne_eq, not_true_eq_false,
    false_or, hc, not_false_eq_true, if_true]

/-- A slot that holds a committed record written by `fram_vslot_save`
validates with that record's header. -/
theorem vslot_validate_rec (vs : fram_vslot_t) (p : fram_partition_t) (pm : fram_pm_t)
    (pmem : Nat → Nat) (slot version now : Nat) (payload : List Nat)
    (g : VslotGeom vs p) (h : PmOK pm p pmem) (hs : slot < vs.slot_count)
    (hver : version < U32) (hl : payload.length ≤ vs.max_payload)
    (hrec : VSlotRec pmem vs slot (vslot_header_for vs.magic version now payload) payload) :
    ∃ pm1, fram_vslot_validate_slot vs pm slot =
        (ESP_OK, some (vslot_header_for vs.magic version now payload), pm1)
      ∧ PmOK pm1 p pmem := by
  obtain ⟨ho, hco, hpo, hfit, hsz⟩ := vslot_slot_offset_eq vs p pm pmem g h slot hs
  have hes := g.slot_size
  have h24 : VSLOT_HEADER_SIZE = 24 := rfl
  have hexp : (slot + 1) * vs.slot_size = slot * vs.slot_size + vs.slot_size := by
    rw [Nat.add_mul, Nat.one_mul]
  obtain ⟨hhdr, hpay⟩ := vslot_rec_parts pmem vs slot _ payload hrec
  rw [ho] at hpo
  obtain ⟨pm1, h1, hok1⟩ := fram_pm_read_ok pm p pmem
    (slot * vs.slot_size + VSLOT_HEADER_SIZE + vs.max_payload) 1 h (by decide) (by omega)
  obtain ⟨pm2, h2, hok2⟩ := fram_pm_read_ok pm1 p pmem
    (slot * vs.slot_size) VSLOT_HEADER_SIZE hok1 (by decide) (by omega)
  have hmp := vslot_max_payload_lt vs p pm pmem g h
  have hrt := vslot_header_for_roundtrip vs.magic version now payload g.magic hver (by omega)
  have hcrc := vslot_header_for_crc vs.magic version now payload
  have hmagic : (vslot_header_for vs.magic version now payload).magic = vs.magic := rfl
  have hlen : (vslot_header_for vs.magic version now payload).len = payload.length := rfl
  generalize vslot_header_for vs.magic version now payload = hdr at *
  by_cases hp0 : payload.length > 0
  · obtain ⟨pm3, h3, hok3⟩ := fram_pm_read_ok pm2 p pmem
      (slot * vs.slot_size + VSLOT_HEADER_SIZE) payload.length hok2 hp0 (by omega)
    refine ⟨pm3, ?_, hok3⟩
    unfold fram_vslot_validate_slot fram_vslot_read_commit fram_vslot_read_header
    simp only [g.part, hco, h1, mem_read_one, List.headD_cons, hrec.commit, ho, h2, hhdr, hrt,
      hmagic, hlen, hpo, h3, hpay, hp0, ne_eq, not_true_eq_false,
      or_self, if_false, if_true, Nat.not_lt.mpr hl]
    rw [fram_crc32_le_append, ← hcrc]
    simp
  · have hnil : payload = [] := List.eq_nil_of_length_eq_zero (by omega)
    refine ⟨pm2, ?_, hok2⟩
    unfold fram_vslot_validate_slot fram_vslot_read_commit fram_vslot_read_header
    simp only [g.part, hco, h1, mem_read_one, List.headD_cons, hrec.commit, ho, h2, hhdr, hrt,
      hmagic, hlen, hp0, ne_eq, not_true_eq_false, or_self, if_false, if_true,
      Nat.not_lt.mpr hl]
    rw [hnil, List.append_nil] at hcrc
    simp [hcrc]

/-- The header built by `fram_vslot_save`. -/
theorem vslot_save_hdr_eq (magic version now : Nat) (payload : List Nat)
    (hl : payload.length < U32) :
    ({ magic := magic, version := version, ts_us := now % U64, len := payload.length % U32,
       crc32 :=
        if payload.length > 0 then
          fram_crc32_le (fram_crc32_le 0
            (fram_vslot_header_t.head_bytes
              { magic := magic, version := version, ts_us := now % U64,
                len := payload.length % U32, crc32 := 0 })) payload
        else fram_crc32_le 0
            (fram_vslot_header_t.head_bytes
              { magic := magic, version := version, ts_us := now % U64,
                len := payload.length % U32, crc32 := 0 }) } :
      fram_vslot_header_t) = vslot_header_for magic version now payload := by
  have h32 : payload.length % U32 = payload.length := Nat.mod_eq_of_lt hl
  rw [record_crc_eq]
  simp only [h32, fram_vslot_header_t.head_bytes, vslot_header_for]

/-- `fram_vslot_save` on a working partition: it succeeds, stores the record in
the next slot, leaves every byte outside that slot unchanged, and makes the
slot active. -/
theorem vslot_save_ok (vs : fram_vslot_t) (p : fram_partition_t) (pm : fram_pm_t)
    (pmem : Nat → Nat) (payload : List Nat) (now slot ver : Nat)
    (g : VslotGeom vs p) (h : PmOK pm p pmem)
    (hslot : (if vs.has_data then ((vs.active_slot + 1) % U32) % vs.slot_count else 0) = slot)
    (hver : (if vs.has_data then (vs.active_version + 1) % U32 else 1) = ver)
    (hh : slot < vs.slot_count) (hl : payload.length ≤ vs.max_payload) :
    ∃ pm1 pmem1,
      fram_vslot_save vs pm payload now =
        (ESP_OK, { vs with active_slot := slot, active_version := ver, has_data := true },
          pm1) ∧
      PmOK pm1 p pmem1 ∧
      VSlotRec pmem1 vs slot (vslot_header_for vs.magic ver now payload) payload ∧
      ∀ a, (a < slot * vs.slot_size ∨ (slot + 1) * vs.slot_size ≤ a) → pmem1 a = pmem a := by
  obtain ⟨ho, hco, hpo, hfit, hsz⟩ := vslot_slot_offset_eq vs p pm pmem g h slot hh
  rw [ho] at hpo
  have hes := g.slot_size
  have hmp := vslot_max_payload_lt vs p pm pmem g h
  have h24 : VSLOT_HEADER_SIZE = 24 := rfl
  have hexp : (slot + 1) * vs.slot_size = slot * vs.slot_size + vs.slot_size := by
    rw [Nat.add_mul, Nat.one_mul]
  have hhl := vslot_to_bytes_length (vslot_header_for vs.magic ver now payload)
  obtain ⟨pm1, h1, hok1⟩ := fram_pm_write_ok pm p pmem
    (slot * vs.slot_size + VSLOT_HEADER_SIZE + vs.max_payload) [0] h
    (by decide) (by simp only [List.length_singleton]; omega)
  obtain ⟨pm2, h2, hok2⟩ := fram_pm_write_ok pm1 p _
    (slot * vs.slot_size) (vslot_header_for vs.magic ver now payload).to_bytes hok1
    (by rw [hhl]; decide) (by rw [hhl]; omega)
  have hmedia := ring_append_media pmem (slot * vs.slot_size) vs.max_payload
    (vslot_header_for vs.magic ver now payload).to_bytes payload hhl hl
  rw [← h24] at hmedia
  have hC : FRAM_VSLOT_COMMIT = 165 := rfl
  rw [← hC] at hmedia
  have hhdr := vslot_save_hdr_eq vs.magic ver now payload (by omega)
  by_cases hp0 : payload.length > 0
  · obtain ⟨pm3, h3, hok3⟩ := fram_pm_write_ok pm2 p _
      (slot * vs.slot_size + VSLOT_HEADER_SIZE) payload hok2 hp0 (by omega)
    obtain ⟨pm4, h4, hok4⟩ := fram_pm_write_ok pm3 p _
      (slot * vs.slot_size + VSLOT_HEADER_SIZE + vs.max_payload)
      [FRAM_VSLOT_COMMIT] hok3 (by decide) (by simp only [List.length_singleton]; omega)
    rw [if_pos hp0] at hhdr
    refine ⟨pm4, _, ?_, hok4, ⟨hmedia.1, hmedia.2.1⟩, ?_⟩
    · unfold fram_vslot_save fram_vslot_write_commit fram_vslot_lock
      simp only [g.mutex, mutex_take, g.part, hslot, hver, hco, ho, hpo, h1,
        hhdr, h2, h3, h4, hp0, Nat.not_lt.mpr hl,
        ne_eq, not_true_eq_false, and_self, if_false, if_true]
    · intro a ha
      exact hmedia.2.2 a (by omega)
  · have hnil : payload = [] := List.eq_nil_of_length_eq_zero (by omega)
    subst hnil
    rw [mem_write_nil] at hmedia
    obtain ⟨pm4, h4, hok4⟩ := fram_pm_write_ok pm2 p _
      (slot * vs.slot_size + VSLOT_HEADER_SIZE + vs.max_payload)
      [FRAM_VSLOT_COMMIT] hok2 (by decide) (by simp only [List.length_singleton]; omega)
    rw [if_neg hp0] at hhdr
    refine ⟨pm4, _, ?_, hok4, ⟨hmedia.1, hmedia.2.1⟩, ?_⟩
    · unfold fram_vslot_save fram_vslot_write_commit fram_vslot_lock
      simp only [g.mutex, mutex_take, g.part, hslot, hver, hco, ho, h1,
        hhdr, h2, h4, hp0, Nat.not_lt.mpr hl,
        ne_eq, not_true_eq_false, and_false, if_false, if_true]
    · intro a ha
      exact hmedia.2.2 a (by omega)

/-- A stored record only depends on the bytes of its slot. -/
theorem vslot_rec_frame (pmem pmem1 : Nat → Nat) (vs vs1 : fram_vslot_t) (slot : Nat)
    (hdr : fram_vslot_header_t) (payload : List Nat)
    (he : vs1.slot_size = vs.slot_size) (hm : vs1.max_payload = vs.max_payload)
    (hes : vs.slot_size = VSLOT_HEADER_SIZE + vs.max_payload + 1)
    (hl : payload.length ≤ vs.max_payload)
    (hsame : ∀ i, i < vs.slot_size →
      pmem1 (slot * vs.slot_size + i) = pmem (slot * vs.slot_size + i))
    (h : VSlotRec pmem vs slot hdr payload) : VSlotRec pmem1 vs1 slot hdr payload := by
  constructor
  · rw [he, ← h.image]
    apply mem_read_congr
    intro i hi
    exact hsame i (by omega)
  · rw [he, hm, ← h.commit, Nat.add_assoc]
    exact hsame _ (by omega)

/-- A slot store on a working partition has fewer than `2^31` slots. -/
theorem vslot_count_small (vs : fram_vslot_t) (p : fram_partition_t) (pm : fram_pm_t)
    (pmem : Nat → Nat) (g : VslotGeom vs p) (h : PmOK pm p pmem) :
    vs.slot_count + vs.slot_count ≤ U32 := by
  obtain ⟨_, _, _, _, hsz⟩ := vslot_slot_offset_eq vs p pm pmem g h 0 g.slot_count_pos
  have hf := g.fits
  have hes := g.slot_size
  have h24 : VSLOT_HEADER_SIZE = 24 := rfl
  have : vs.slot_count * 2 ≤ vs.slot_count * vs.slot_size :=
    Nat.mul_le_mul_left _ (by omega)
  omega

/-- One `fram_vslot_save` on a working partition keeps the invariant. -/
theorem vslot_save_step (vs : fram_vslot_t) (p : fram_partition_t) (pm : fram_pm_t)
    (pmem : Nat → Nat) (es : List (List Nat × Nat)) (payload : List Nat) (now : Nat)
    (g : VslotGeom vs p) (h : PmOK pm p pmem) (inv : VslotAfter vs pmem es)
    (hl : payload.length ≤ vs.max_payload) :
    ∃ vs1 pm1 pmem1,
      fram_vslot_save vs pm payload now = (ESP_OK, vs1, pm1) ∧
      VslotGeom vs1 p ∧ PmOK pm1 p pmem1 ∧ VslotAfter vs1 pmem1 (es ++ [(payload, now)]) ∧
      vs1.slot_count = vs.slot_count ∧ vs1.max_payload = vs.max_payload ∧
      vs1.magic = vs.magic ∧ vs1.slot_size = vs.slot_size := by
  have hcpos := g.slot_count_pos
  have hcU := vslot_count_small vs p pm pmem g h
  rw [U32_eq] at hcU
  have hes := g.slot_size
  have hlen : (es ++ [(payload, now)]).length = es.length + 1 := by simp
  have hslot : (if vs.has_data then ((vs.active_slot + 1) % U32) % vs.slot_count else 0)
      = es.length % vs.slot_count := by
    rw [inv.has_data, inv.active_slot]
    by_cases h0 : 0 < es.length
    · have hlt := Nat.mod_lt (es.length - 1) hcpos
      simp only [h0, decide_True, if_true]
      rw [U32_eq, Nat.mod_eq_of_lt
        (show (es.length - 1) % vs.slot_count + 1 < 4294967296 by omega), succ_mod_mod,
        Nat.sub_add_cancel h0]
    · have : es.length = 0 := by omega
      simp [this]
  have hver : (if vs.has_data then (vs.active_version + 1) % U32 else 1)
      = (es.length + 1) % U32 := by
    rw [inv.has_data, inv.active_version]
    by_cases h0 : 0 < es.length
    · simp only [h0, decide_True, if_true]
      exact succ_mod_mod _ _
    · have : es.length = 0 := by omega
      simp [this, U32_eq]
  obtain ⟨pm1, pmem1, hsave, hok, hrec, hframe⟩ := vslot_save_ok vs p pm pmem payload now
    (es.length % vs.slot_count) ((es.length + 1) % U32) g h hslot hver
    (Nat.mod_lt _ hcpos) hl
  have hb : ∀ i, i < (es ++ [(payload, now)]).length →
      ((es ++ [(payload, now)]).getD i ([], 0)).1.length ≤ vs.max_payload := by
    intro i hi
    rw [hlen] at hi
    by_cases hin : i < es.length
    · rw [List.getD_append _ _ _ _ hin]
      exact inv.bounded i hin
    · have : i = es.length := by omega
      subst this
      rw [List.getD_append_right _ _ _ _ (Nat.le_refl _)]
      simpa using hl
  have hw : ∀ i, i < (es ++ [(payload, now)]).length →
      (es ++ [(payload, now)]).length ≤ i + vs.slot_count →
      VSlotRec pmem1 vs (i % vs.slot_count)
        (vslot_header_for vs.magic ((i + 1) % U32) ((es ++ [(payload, now)]).getD i ([], 0)).2
          ((es ++ [(payload, now)]).getD i ([], 0)).1)
        ((es ++ [(payload, now)]).getD i ([], 0)).1 := by
    intro i hi hwin
    rw [hlen] at hi hwin
    by_cases hin : i < es.length
    · rw [List.getD_append _ _ _ _ hin]
      apply vslot_rec_frame pmem pmem1 vs vs _ _ _ rfl rfl hes (inv.bounded i hin) _
        (inv.window i hin (by omega))
      intro k hk
      apply hframe
      exact slot_disjoint _ _ _ _ (mod_ne_of_window _ _ _ hin (by omega)) hk
    · have : i = es.length := by omega
      subst this
      rw [List.getD_append_right _ _ _ _ (Nat.le_refl _)]
      simp only [Nat.sub_self, List.getD_cons_zero]
      exact hrec
  have hf : ∀ j, (es ++ [(payload, now)]).length ≤ j → j < vs.slot_count →
      pmem1 (j * vs.slot_size + VSLOT_HEADER_SIZE + vs.max_payload) ≠ FRAM_VSLOT_COMMIT := by
    intro j hj hjc
    rw [hlen] at hj
    have hne : j ≠ es.length % vs.slot_count := by
      rw [Nat.mod_eq_of_lt (by omega)]; omega
    rw [Nat.add_assoc, hframe _ (slot_disjoint _ _ _ _ hne (by omega)), ← Nat.add_assoc]
    exact inv.fresh j (by omega) hjc
  refine ⟨_, pm1, pmem1, hsave,
    ⟨g.part, g.slot_size, g.slot_count_pos, g.fits, g.magic, g.mutex⟩, hok,
    ⟨?_, ?_, ?_, hb, fun i hi hwin => ⟨(hw i hi hwin).image, (hw i hi hwin).commit⟩, hf⟩,
    rfl, rfl, rfl, rfl⟩
  · show true = decide (0 < (es ++ [(payload, now)]).length)
    rw [hlen]
    simp
  · show es.length % vs.slot_count = ((es ++ [(payload, now)]).length - 1) % vs.slot_count
    rw [hlen, Nat.add_sub_cancel]
  · show (es.length + 1) % U32 = (es ++ [(payload, now)]).length % U32
    rw [hlen]

/-- A run of saves of payloads within the limit succeeds and keeps the
invariant. -/
theorem vslot_save_all_ok (p : fram_partition_t) :
    ∀ (more : List (List Nat × Nat)) (vs : fram_vslot_t) (pm : fram_pm_t) (pmem : Nat → Nat)
      (es : List (List Nat × Nat)),
      VslotGeom vs p → PmOK pm p pmem → VslotAfter vs pmem es →
      (∀ e ∈ more, e.1.length ≤ vs.max_payload) →
      ∃ vs1 pm1 pmem1,
        fram_vslot_save_all vs pm more = (ESP_OK, vs1, pm1) ∧
        VslotGeom vs1 p ∧ PmOK pm1 p pmem1 ∧ VslotAfter vs1 pmem1 (es ++ more) ∧
        vs1.slot_count = vs.slot_count ∧ vs1.max_payload = vs.max_payload ∧
        vs1.magic = vs.magic ∧ vs1.slot_size = vs.slot_size := by
  intro more
  induction more with
  | nil =>
    intro vs pm pmem es g h inv _
    refine ⟨vs, pm, pmem, rfl, g, h, ?_, rfl, rfl, rfl, rfl⟩
    rw [List.append_nil]
    exact inv
  | cons e rest ih =>
    intro vs pm pmem es g h inv hb
    have hl := hb e (List.mem_cons_self _ _)
    obtain ⟨vs1, pm1, pmem1, happ, g1, h1, inv1, e1, e2, e3, e4⟩ :=
      vslot_save_step vs p pm pmem es e.1 e.2 g h inv hl
    obtain ⟨vs2, pm2, pmem2, hall, g2, h2, inv2, f1, f2, f3, f4⟩ :=
      ih vs1 pm1 pmem1 (es ++ [(e.1, e.2)]) g1 h1 inv1
        (fun x hx => by rw [e2]; exact hb x (List.mem_cons_of_mem _ hx))
    refine ⟨vs2, pm2, pmem2, ?_, g2, h2, ?_, f1.trans e1, f2.trans e2, f3.trans e3,
      f4.trans e4⟩
    · simp only [fram_vslot_save_all, happ, ne_eq, not_true_eq_false, if_false]
      exact hall
    · rw [List.append_assoc] at inv2
      exact inv2

/-- A run of saves only succeeds when every payload is within the limit. -/
theorem vslot_save_all_bounded (p : fram_partition_t) :
    ∀ (more : List (List Nat × Nat)) (vs : fram_vslot_t) (pm : fram_pm_t) (pmem : Nat → Nat)
      (es : List (List Nat × Nat)),
      VslotGeom vs p → PmOK pm p pmem → VslotAfter vs pmem es →
      (fram_vslot_save_all vs pm more).1 = ESP_OK →
      ∀ e ∈ more, e.1.length ≤ vs.max_payload := by
  intro more
  induction more with
  | nil =>
    intro vs pm pmem es _ _ _ _ e he
    exact absurd he (List.not_mem_nil _)
  | cons e rest ih =>
    intro vs pm pmem es g h inv hall
    by_cases hb : e.1.length ≤ vs.max_payload
    · obtain ⟨vs1, pm1, pmem1, happ, g1, h1, inv1, e1, e2, e3, e4⟩ :=
        vslot_save_step vs p pm pmem es e.1 e.2 g h inv hb
      simp only [fram_vslot_save_all, happ, ne_eq, not_true_eq_false, if_false] at hall
      have hrest := ih vs1 pm1 pmem1 _ g1 h1 inv1 hall
      intro x hx
      rcases List.mem_cons.mp hx with rfl | hm
      · exact hb
      · rw [← e2]; exact hrest x hm
    · exfalso
      have hbad : e.1.length > vs.max_payload := by omega
      have happ : (fram_vslot_save vs pm e.1 e.2).1 = ESP_ERR_INVALID_SIZE := by
        unfold fram_vslot_save
        simp only [hbad, if_true]
      simp only [fram_vslot_save_all, happ, ne_eq, reduceCtorEq, not_false_eq_true,
        if_true] at hall

/-- The state after a successful run of saves. -/
theorem vslot_save_all_spec (p : fram_partition_t) (more : List (List Nat × Nat))
    (vs vs1 : fram_vslot_t) (pm pm1 : fram_pm_t) (pmem : Nat → Nat)
    (es : List (List Nat × Nat)) (g : VslotGeom vs p) (h : PmOK pm p pmem)
    (inv : VslotAfter vs pmem es)
    (happ : fram_vslot_save_all vs pm more = (ESP_OK, vs1, pm1)) :
    ∃ pmem1, VslotGeom vs1 p ∧ PmOK pm1 p pmem1 ∧ VslotAfter vs1 pmem1 (es ++ more) ∧
      vs1.slot_count = vs.slot_count ∧ vs1.max_payload = vs.max_payload ∧
      vs1.magic = vs.magic ∧ vs1.slot_size = vs.slot_size := by
  have hb := vslot_save_all_bounded p more vs pm pmem es g h inv (by rw [happ])
  obtain ⟨r, q, pmem1, hall, rest⟩ := vslot_save_all_ok p more vs pm pmem es g h inv hb
  rw [happ] at hall
  injection hall with _ h2
  injection h2 with h3 h4
  subst h3 h4
  exact ⟨pmem1, rest⟩

/-- Slot validation only looks at the geometry fields of the slot store. -/
theorem vslot_validate_congr (r1 r2 : fram_vslot_t) (pm : fram_pm_t) (slot : Nat)
    (h1 : r1.part = r2.part) (h2 : r1.slot_size = r2.slot_size)
    (h3 : r1.max_payload = r2.max_payload) (h4 : r1.magic = r2.magic) :
    fram_vslot_validate_slot r1 pm slot = fram_vslot_validate_slot r2 pm slot := by
  unfold fram_vslot_validate_slot fram_vslot_read_commit fram_vslot_read_header
    fram_vslot_commit_offset fram_vslot_slot_offset
  simp only [h1, h2, h3, h4]

/-- Slot validation against a view of the slots. -/
theorem vslot_validate_view (vs : fram_vslot_t) (p : fram_partition_t) (pm : fram_pm_t)
    (pmem : Nat → Nat) (V : Nat → Option Nat) (slot : Nat) (g : VslotGeom vs p)
    (h : PmOK pm p pmem) (hV : VslotView vs pmem V) (hs : slot < vs.slot_count) :
    ∃ pm1, PmOK pm1 p pmem ∧
      ((∃ q hdr, V slot = some q ∧ hdr.version = q ∧
          fram_vslot_validate_slot vs pm slot = (ESP_OK, some hdr, pm1)) ∨
       (V slot = none ∧
          fram_vslot_validate_slot vs pm slot = (ESP_ERR_NOT_FOUND, none, pm1))) := by
  cases hv : V slot with
  | none =>
    obtain ⟨pm1, h1, hok⟩ := vslot_validate_uncommitted vs p pm pmem slot g h hs
      ((hV slot hs).2 hv)
    exact ⟨pm1, hok, Or.inr ⟨rfl, h1⟩⟩
  | some q =>
    obtain ⟨hq, now, payload, hl, hrec⟩ := (hV slot hs).1 q hv
    obtain ⟨pm1, h1, hok⟩ := vslot_validate_rec vs p pm pmem slot q now payload g h hs hq hl
      hrec
    exact ⟨pm1, hok, Or.inl ⟨q, _, rfl, rfl, h1⟩⟩

/-- The recovery loop computes the scan of the view. -/
theorem vslot_scan_eq (vs ringG : fram_vslot_t) (p : fram_partition_t) (pmem : Nat → Nat)
    (V : Nat → Option Nat) (g : VslotGeom ringG p)
    (h1 : vs.part = ringG.part) (h2 : vs.slot_size = ringG.slot_size)
    (h3 : vs.max_payload = ringG.max_payload) (h4 : vs.magic = ringG.magic)
    (hV : VslotView ringG pmem V) :
    ∀ (slots : List Nat) (st : vslot_scan_t) (pm : fram_pm_t),
      (∀ s ∈ slots, s < ringG.slot_count) → PmOK pm p pmem →
      ∃ pm1, fram_vslot_init_scan vs slots st pm = (vslot_scan_view V slots st, pm1) ∧
        PmOK pm1 p pmem := by
  intro slots
  induction slots with
  | nil =>
    intro st pm _ h
    exact ⟨pm, rfl, h⟩
  | cons slot rest ih =>
    intro st pm hs h
    have hslot := hs slot (List.mem_cons_self _ _)
    have hrest : ∀ s ∈ rest, s < ringG.slot_count := fun s hm => hs s (List.mem_cons_of_mem _ hm)
    obtain ⟨pm1, hok, hcase⟩ := vslot_validate_view ringG p pm pmem V slot g h hV hslot
    rw [← vslot_validate_congr vs ringG pm slot h1 h2 h3 h4] at hcase
    rcases hcase with ⟨q, hdr, hv, hq, hval⟩ | ⟨hv, hval⟩
    · subst hq
      simp only [fram_vslot_init_scan, vslot_scan_view, hval, hv]
      split_ifs
      · exact ih _ pm1 hrest hok
      · exact ih _ pm1 hrest hok
    · simp only [fram_vslot_init_scan, vslot_scan_view, hval, hv]
      exact ih _ pm1 hrest hok

/-- What the scan of a view returns: a slot of the scanned set holding the
largest version seen. -/
theorem vslot_scan_view_spec (V : Nat → Option Nat) (S : Nat → Prop) :
    ∀ (slots : List Nat) (st : vslot_scan_t), (∀ s ∈ slots, S s) →
      (st.found = true → S st.best_slot ∧ V st.best_slot = some st.best_version) →
      ((vslot_scan_view V slots st).found = true →
        S (vslot_scan_view V slots st).best_slot ∧
        V (vslot_scan_view V slots st).best_slot
          = some (vslot_scan_view V slots st).best_version) ∧
      (st.found = true → (vslot_scan_view V slots st).found = true ∧
        st.best_version ≤ (vslot_scan_view V slots st).best_version) ∧
      (∀ s ∈ slots, ∀ q, V s = some q → (vslot_scan_view V slots st).found = true ∧
        q ≤ (vslot_scan_view V slots st).best_version) ∧
      (st.found = false → (∀ s ∈ slots, V s = none) →
        (vslot_scan_view V slots st).found = false) := by
  intro slots
  induction slots with
  | nil =>
    intro st _ hst
    refine ⟨hst, fun h => ⟨h, Nat.le_refl _⟩, ?_, fun h _ => h⟩
    intro s hs
    exact absurd hs (List.not_mem_nil _)
  | cons slot rest ih =>
    intro st hS hst
    have hrest : ∀ s ∈ rest, S s := fun s hm => hS s (List.mem_cons_of_mem _ hm)
    cases hv : V slot with
    | none =>
      simp only [vslot_scan_view, hv]
      obtain ⟨i1, i2, i3, i4⟩ := ih st hrest hst
      refine ⟨i1, i2, ?_, ?_⟩
      · intro s hs q hq
        rcases List.mem_cons.mp hs with rfl | hm
        · rw [hv] at hq; cases hq
        · exact i3 s hm q hq
      · intro hf hall
        exact i4 hf (fun s hm => hall s (List.mem_cons_of_mem _ hm))
    | some q =>
      simp only [vslot_scan_view, hv]
      by_cases hc : (!st.found || decide (q > st.best_version)) = true
      · rw [if_pos hc]
        obtain ⟨i1, i2, i3, _⟩ := ih { best_version := q, best_slot := slot, found := true }
          hrest (fun _ => ⟨hS slot (List.mem_cons_self _ _), hv⟩)
        have i2t := i2 rfl
        refine ⟨i1, ?_, ?_, ?_⟩
        · intro hf
          refine ⟨i2t.1, ?_⟩
          simp only [hf, Bool.not_true, Bool.false_or, decide_eq_true_eq] at hc
          exact Nat.le_trans (Nat.le_of_lt hc) i2t.2
        · intro s hs q2 hq
          rcases List.mem_cons.mp hs with rfl | hm
          · rw [hv] at hq
            cases hq
            exact i2t
          · exact i3 s hm q2 hq
        · intro _ hall
          have := hall slot (List.mem_cons_self _ _)
          rw [hv] at this; cases this
      · rw [if_neg hc]
        simp only [Bool.or_eq_true, Bool.not_eq_true', decide_eq_true_eq, not_or,
          Bool.not_eq_false, Nat.not_lt] at hc
        obtain ⟨i1, i2, i3, _⟩ := ih st hrest hst
        have i2t := i2 hc.1
        refine ⟨i1, i2, ?_, ?_⟩
        · intro s hs q2 hq
          rcases List.mem_cons.mp hs with rfl | hm
          · rw [hv] at hq
            cases hq
            exact ⟨i2t.1, Nat.le_trans hc.2 i2t.2⟩
          · exact i3 s hm q2 hq
        · intro hf
          rw [hc.1] at hf; cases hf

/-- The geometry `fram_vslot_init` computes is consistent. -/
theorem vslot_empty_geom (K : Kconfig) (p : fram_partition_t) (cfg : fram_vslot_config_t)
    (hsc : 2 ≤ cfg.slot_count) (hle : cfg.max_payload ≤ K.FRAM_VSLOT_MAX_PAYLOAD)
    (hK : K.FRAM_VSLOT_MAX_PAYLOAD + VSLOT_HEADER_SIZE + 1 < U32) (hmagic : cfg.magic < U32)
    (hcap : cfg.slot_count * (VSLOT_HEADER_SIZE + cfg.max_payload + 1) ≤ p.size) :
    VslotGeom (vslot_empty p cfg) p ∧
    (vslot_empty p cfg).slot_size = VSLOT_HEADER_SIZE + cfg.max_payload + 1 := by
  have hes : (VSLOT_HEADER_SIZE + cfg.max_payload + 1) % U32
      = VSLOT_HEADER_SIZE + cfg.max_payload + 1 := Nat.mod_eq_of_lt (by omega)
  refine ⟨⟨rfl, hes, ?_, ?_, hmagic, rfl⟩, hes⟩
  · show 0 < cfg.slot_count
    omega
  · show cfg.slot_count * ((VSLOT_HEADER_SIZE + cfg.max_payload + 1) % U32) ≤ p.size
    rw [hes]
    exact hcap

/-- `fram_vslot_init` on a working partition whose slots are described by the
view `V`. -/
theorem vslot_init_view (K : Kconfig) (vs0 : fram_vslot_t) (pm : fram_pm_t)
    (p : fram_partition_t) (pmem : Nat → Nat) (cfg : fram_vslot_config_t)
    (V : Nat → Option Nat)
    (hfind : fram_pm_find pm cfg.partition_name = some p) (h : PmOK pm p pmem)
    (hsc : 2 ≤ cfg.slot_count) (hsc3 : cfg.slot_count ≤ 3)
    (hmp : 0 < cfg.max_payload) (hle : cfg.max_payload ≤ K.FRAM_VSLOT_MAX_PAYLOAD)
    (hK : K.FRAM_VSLOT_MAX_PAYLOAD + VSLOT_HEADER_SIZE + 1 < U32) (hmagic : cfg.magic < U32)
    (hcap : cfg.slot_count * (VSLOT_HEADER_SIZE + cfg.max_payload + 1) ≤ p.size)
    (hV : VslotView (vslot_empty p cfg) pmem V) :
    ∃ pm1, fram_vslot_init K vs0 pm cfg = (ESP_OK, vslot_recovered p cfg V, pm1) ∧
      PmOK pm1 p pmem := by
  obtain ⟨g, hes⟩ := vslot_empty_geom K p cfg hsc hle hK hmagic hcap
  have hsz := (vslot_slot_offset_eq _ p pm pmem g h 0 g.slot_count_pos).2.2.2.2
  have hes2 : (VSLOT_HEADER_SIZE + cfg.max_payload + 1) % U32
      = VSLOT_HEADER_SIZE + cfg.max_payload + 1 := Nat.mod_eq_of_lt (by omega)
  have hsize : ¬ p.size < (((VSLOT_HEADER_SIZE + cfg.max_payload + 1) % U32)
      * cfg.slot_count) % U32 := by
    rw [hes2, Nat.mul_comm, Nat.mod_eq_of_lt (by omega)]
    omega
  obtain ⟨pm1, hs, hok1⟩ := vslot_scan_eq
    { part := some p, slot_count := cfg.slot_count, max_payload := cfg.max_payload,
      slot_size := (VSLOT_HEADER_SIZE + cfg.max_payload + 1) % U32, magic := cfg.magic,
      active_slot := 0, active_version := 0, has_data := false,
      mutex := SemaphoreHandle_t.free }
    (vslot_empty p cfg) p pmem V g rfl rfl rfl rfl hV
    (List.range cfg.slot_count)
    { best_version := 0, best_slot := 0, found := false } pm
    (fun s hs => List.mem_range.mp hs) h
  refine ⟨pm1, ?_, hok1⟩
  unfold fram_vslot_init
  simp only [hfind]
  rw [if_neg (by omega), if_neg (by omega), if_neg hsize]
  simp only [hs]
  by_cases hf : (vslot_scan_view V (List.range cfg.slot_count)
      { best_version := 0, best_slot := 0, found := false }).found = true
  · simp only [hf, if_true, vslot_recovered, vslot_empty]
  · simp only [hf, Bool.false_eq_true, if_false, vslot_recovered, vslot_empty]

/-- The scan of a view without valid records finds nothing. -/
theorem vslot_recovered_none (p : fram_partition_t) (cfg : fram_vslot_config_t) :
    vslot_recovered p cfg (fun _ => none) = vslot_empty p cfg := by
  have hf := (vslot_scan_view_spec (fun _ => none) (fun _ => True)
    (List.range cfg.slot_count)
    { best_version := 0, best_slot := 0, found := false }
    (fun _ _ => trivial) (fun hx => Bool.noConfusion hx)).2.2.2 rfl (fun _ _ => rfl)
  simp only [vslot_recovered, hf, Bool.false_eq_true, if_false]

/-- `fram_vslot_init` returning `ESP_OK` accepted the configuration. -/
theorem vslot_init_ok_cfg (K : Kconfig) (vs0 vs1 : fram_vslot_t) (pm pm1 : fram_pm_t)
    (p : fram_partition_t) (cfg : fram_vslot_config_t)
    (hfind : fram_pm_find pm cfg.partition_name = some p)
    (hK : 3 * (K.FRAM_VSLOT_MAX_PAYLOAD + VSLOT_HEADER_SIZE + 1) < U32)
    (hinit : fram_vslot_init K vs0 pm cfg = (ESP_OK, vs1, pm1)) :
    2 ≤ cfg.slot_count ∧ cfg.slot_count ≤ 3 ∧
    0 < cfg.max_payload ∧ cfg.max_payload ≤ K.FRAM_VSLOT_MAX_PAYLOAD ∧
    cfg.slot_count * (VSLOT_HEADER_SIZE + cfg.max_payload + 1) ≤ p.size := by
  have hsc : ¬ (cfg.slot_count < 2 ∨ cfg.slot_count > 3) := by
    intro hc
    unfold fram_vslot_init at hinit
    rw [if_pos hc] at hinit
    injection hinit with h1 _
    cases h1
  have hcfg : ¬ (cfg.max_payload = 0 ∨ cfg.max_payload > K.FRAM_VSLOT_MAX_PAYLOAD) := by
    intro hc
    unfold fram_vslot_init at hinit
    rw [if_neg hsc, if_pos hc] at hinit
    injection hinit with h1 _
    cases h1
  refine ⟨by omega, by omega, by omega, by omega, ?_⟩
  by_contra hcap
  have hes : (VSLOT_HEADER_SIZE + cfg.max_payload + 1) % U32
      = VSLOT_HEADER_SIZE + cfg.max_payload + 1 := Nat.mod_eq_of_lt (by omega)
  have hmul : cfg.slot_count * (VSLOT_HEADER_SIZE + cfg.max_payload + 1)
      ≤ 3 * (K.FRAM_VSLOT_MAX_PAYLOAD + VSLOT_HEADER_SIZE + 1) :=
    Nat.mul_le_mul (by omega) (by omega)
  have h0 : p.size < (((VSLOT_HEADER_SIZE + cfg.max_payload + 1) % U32)
      * cfg.slot_count) % U32 := by
    rw [hes, Nat.mul_comm, Nat.mod_eq_of_lt (by omega)]
    omega
  unfold fram_vslot_init at hinit
  simp only [hfind] at hinit
  rw [if_neg hsc, if_neg hcfg, if_pos h0] at hinit
  injection hinit with h1 _
  cases h1

/-- `fram_vslot_init` on an erased partition gives the empty slot store. -/
theorem vslot_init_erased (K : Kconfig) (vs0 vs1 : fram_vslot_t) (pm pm1 : fram_pm_t)
    (p : fram_partition_t) (pmem : Nat → Nat) (cfg : fram_vslot_config_t)
    (hfind : fram_pm_find pm cfg.partition_name = some p) (h : PmOK pm p pmem)
    (herased : ∀ i, i < p.size → pmem i = 0xFF)
    (hK : 3 * (K.FRAM_VSLOT_MAX_PAYLOAD + VSLOT_HEADER_SIZE + 1) < U32)
    (hmagic : cfg.magic < U32)
    (hinit : fram_vslot_init K vs0 pm cfg = (ESP_OK, vs1, pm1)) :
    vs1 = vslot_empty p cfg ∧ VslotGeom vs1 p ∧ PmOK pm1 p pmem ∧ VslotAfter vs1 pmem [] := by
  obtain ⟨hsc, hsc3, hmp, hle, hcap⟩ := vslot_init_ok_cfg K vs0 vs1 pm pm1 p cfg hfind hK hinit
  obtain ⟨g, hes⟩ := vslot_empty_geom K p cfg hsc hle (by omega) hmagic hcap
  have hfresh : ∀ j, j < (vslot_empty p cfg).slot_count →
      pmem (j * (vslot_empty p cfg).slot_size + VSLOT_HEADER_SIZE
        + (vslot_empty p cfg).max_payload) ≠ FRAM_VSLOT_COMMIT := by
    intro j hj
    obtain ⟨_, _, _, hfit, _⟩ := vslot_slot_offset_eq _ p pm pmem g h j hj
    have hes2 := g.slot_size
    rw [Nat.add_mul, Nat.one_mul] at hfit
    rw [herased _ (by omega)]
    decide
  have hV : VslotView (vslot_empty p cfg) pmem (fun _ => none) := by
    intro slot hs
    exact ⟨fun q hq => Option.noConfusion hq, fun _ => hfresh slot hs⟩
  obtain ⟨pm2, hi2, hok2⟩ := vslot_init_view K vs0 pm p pmem cfg (fun _ => none) hfind h hsc
    hsc3 hmp hle (by omega) hmagic hcap hV
  rw [hinit, vslot_recovered_none] at hi2
  injection hi2 with _ h2
  injection h2 with h3 h4
  subst h3 h4
  refine ⟨rfl, g, hok2, ⟨rfl, ?_, rfl, ?_, ?_, ?_⟩⟩
  · show 0 = (0 - 1) % _
    simp
  · intro i hi
    exact absurd hi (Nat.not_lt_zero _)
  · intro i hi
    exact absurd hi (Nat.not_lt_zero _)
  · intro j _ hj
    exact hfresh j hj

/-- `fram_vslot_load` when the active slot holds a committed record. -/
theorem vslot_load_rec (vs : fram_vslot_t) (p : fram_partition_t) (pm : fram_pm_t)
    (pmem : Nat → Nat) (version now : Nat) (payload buf : List Nat) (cap : Nat)
    (g : VslotGeom vs p) (h : PmOK pm p pmem) (hd : vs.has_data = true)
    (hs : vs.active_slot < vs.slot_count)
    (hver : version < U32) (hl : payload.length ≤ vs.max_payload)
    (hcap : payload.length ≤ cap)
    (hrec : VSlotRec pmem vs vs.active_slot
      (vslot_header_for vs.magic version now payload) payload) :
    ∃ pm1, fram_vslot_load vs pm { payload := some buf, len := some cap } =
        (ESP_OK, { payload := some (payload ++ buf.drop payload.length),
                   len := some payload.length }, pm1) ∧ PmOK pm1 p pmem := by
  obtain ⟨pm1, hv, hok1⟩ := vslot_validate_rec vs p pm pmem vs.active_slot version now payload
    g h hs hver hl hrec
  obtain ⟨ho, hco, hpo, hfit, hsz⟩ := vslot_slot_offset_eq vs p pm pmem g h vs.active_slot hs
  have hes := g.slot_size
  have hexp : (vs.active_slot + 1) * vs.slot_size
      = vs.active_slot * vs.slot_size + vs.slot_size := by
    rw [Nat.add_mul, Nat.one_mul]
  have hlen : (vslot_header_for vs.magic version now payload).len = payload.length := rfl
  by_cases hp0 : payload.length > 0
  · obtain ⟨pm2, hr, hok2⟩ := fram_pm_read_ok pm1 p pmem
      (vs.active_slot * vs.slot_size + VSLOT_HEADER_SIZE) payload.length hok1 hp0 (by omega)
    rw [(vslot_rec_parts pmem vs vs.active_slot _ payload hrec).2] at hr
    refine ⟨pm2, ?_, hok2⟩
    unfold fram_vslot_load fram_vslot_lock
    simp only [hd, hv, hlen, hpo, g.part, g.mutex, mutex_take, hr, Nat.not_lt.mpr hcap, hp0,
      if_true, if_false, ne_eq, not_true_eq_false, Bool.not_true, Bool.false_eq_true]
  · refine ⟨pm1, ?_, hok1⟩
    have hnil : payload = [] := List.eq_nil_of_length_eq_zero (by omega)
    subst hnil
    unfold fram_vslot_load fram_vslot_lock
    simp only [hd, hv, hlen, g.mutex, mutex_take, Nat.not_lt.mpr hcap, hp0, if_true,
      if_false, List.length_nil, List.drop_zero, List.nil_append,
      Nat.not_lt_zero, gt_iff_lt, Nat.lt_irrefl, ne_eq, not_true_eq_false, Bool.not_true,
      Bool.false_eq_true]

/-- `fram_vslot_peek_len` when the active slot holds a committed record. -/
theorem vslot_peek_len_rec (vs : fram_vslot_t) (p : fram_partition_t) (pm : fram_pm_t)
    (pmem : Nat → Nat) (version now : Nat) (payload : List Nat) (len0 : Nat)
    (g : VslotGeom vs p) (h : PmOK pm p pmem) (hd : vs.has_data = true)
    (hs : vs.active_slot < vs.slot_count)
    (hver : version < U32) (hl : payload.length ≤ vs.max_payload)
    (hrec : VSlotRec pmem vs vs.active_slot
      (vslot_header_for vs.magic version now payload) payload) :
    ∃ pm1, fram_vslot_peek_len vs pm (some len0) = (ESP_OK, some payload.length, pm1) ∧
      PmOK pm1 p pmem := by
  obtain ⟨pm1, hv, hok1⟩ := vslot_validate_rec vs p pm pmem vs.active_slot version now payload
    g h hs hver hl hrec
  have hlen : (vslot_header_for vs.magic version now payload).len = payload.length := rfl
  refine ⟨pm1, ?_, hok1⟩
  unfold fram_vslot_peek_len fram_vslot_lock
  simp only [hd, hv, hlen, g.mutex, mutex_take, Option.isNone_some, if_false, ne_eq,
    not_true_eq_false, Bool.not_true, Bool.false_eq_true]

theorem fram_vslot_validate_same (vs : fram_vslot_t) (pm : fram_pm_t) (slot : Nat) :
    PmSame pm (fram_vslot_validate_slot vs pm slot).2.2 := by
  have h1 := fram_pm_read_same pm vs.part (fram_vslot_commit_offset vs slot) 1
  have h2 := fram_pm_read_same (fram_pm_read pm vs.part (fram_vslot_commit_offset vs slot) 1).2.2
    vs.part (fram_vslot_slot_offset vs slot) VSLOT_HEADER_SIZE
  have h12 := PmSame.trans_same _ _ _ h1 h2
  have h3 := fun len => fram_pm_read_same
    (fram_pm_read (fram_pm_read pm vs.part (fram_vslot_commit_offset vs slot) 1).2.2
      vs.part (fram_vslot_slot_offset vs slot) VSLOT_HEADER_SIZE).2.2 vs.part
    ((fram_vslot_slot_offset vs slot + VSLOT_HEADER_SIZE) % U32) len
  unfold fram_vslot_validate_slot fram_vslot_read_commit fram_vslot_read_header
  simp only
  split_ifs
  all_goals first
    | exact h1
    | exact h12
    | exact PmSame.trans_same _ _ _ h12 (h3 _)

theorem fram_vslot_scan_same (vs : fram_vslot_t) :
    ∀ (slots : List Nat) (st : vslot_scan_t) (pm : fram_pm_t),
      PmSame pm (fram_vslot_init_scan vs slots st pm).2 := by
  intro slots
  induction slots with
  | nil => intro st pm; exact ⟨rfl, rfl⟩
  | cons slot rest ih =>
    intro st pm
    have hv := fram_vslot_validate_same vs pm slot
    unfold fram_vslot_init_scan
    simp only
    split
    · split_ifs
      · exact PmSame.trans_same _ _ _ hv (ih _ _)
      · exact PmSame.trans_same _ _ _ hv (ih _ _)
    · exact PmSame.trans_same _ _ _ hv (ih _ _)

theorem pm_same_ite3 {α : Type} (pm : fram_pm_t) (c : Prop) [Decidable c]
    (a b : esp_err_t × α × fram_pm_t)
    (ha : PmSame pm a.2.2) (hb : PmSame pm b.2.2) : PmSame pm (if c then a else b).2.2 := by
  split_ifs
  · exact ha
  · exact hb

theorem fram_vslot_save_same (vs : fram_vslot_t) (pm : fram_pm_t) (payload : List Nat)
    (now : Nat) : PmSame pm (fram_vslot_save vs pm payload now).2.2 := by
  unfold fram_vslot_save fram_vslot_write_commit
  simp only
  generalize fram_vslot_header_t.to_bytes _ = hb
  generalize (if vs.has_data = true then (vs.active_slot + 1) % U32 % vs.slot_count else 0) = sl
  have h0 := fram_pm_write_same pm vs.part (fram_vslot_commit_offset vs sl) [0]
  have h1 := PmSame.trans_same _ _ _ h0 (fram_pm_write_same
    (fram_pm_write pm vs.part (fram_vslot_commit_offset vs sl) [0]).2 vs.part
    (fram_vslot_slot_offset vs sl) hb)
  have h2 := fun pm1 => fram_pm_write_same pm1 vs.part
    ((fram_vslot_slot_offset vs sl + VSLOT_HEADER_SIZE) % U32) payload
  have h3 := fun pm1 => fram_pm_write_same pm1 vs.part
    (fram_vslot_commit_offset vs sl) [FRAM_VSLOT_COMMIT]
  have hw2 := pm_same_ite pm ((fram_pm_write
      (fram_pm_write pm vs.part (fram_vslot_commit_offset vs sl) [0]).2 vs.part
      (fram_vslot_slot_offset vs sl) hb).1 = ESP_OK ∧ payload.length > 0) _ _
    (PmSame.trans_same _ _ _ h1 (h2 _)) h1
  refine pm_same_ite3 pm _ _ _ ⟨rfl, rfl⟩ ?_
  refine pm_same_ite3 pm _ _ _ ⟨rfl, rfl⟩ ?_
  refine pm_same_ite3 pm _ _ _ h0 ?_
  refine pm_same_ite3 pm _ _ _ ?_ ?_
  all_goals
    refine pm_same_ite pm _ _ _ (PmSame.trans_same _ _ _ ?_ (h3 _)) ?_
    all_goals exact hw2

theorem fram_vslot_save_all_same :
    ∀ (more : List (List Nat × Nat)) (vs : fram_vslot_t) (pm : fram_pm_t),
      PmSame pm (fram_vslot_save_all vs pm more).2.2 := by
  intro more
  induction more with
  | nil => intro vs pm; exact ⟨rfl, rfl⟩
  | cons e rest ih =>
    intro vs pm
    have ha := fram_vslot_save_same vs pm e.1 e.2
    unfold fram_vslot_save_all
    simp only
    split
    · exact ha
    · exact PmSame.trans_same _ _ _ ha (ih _ _)

theorem fram_vslot_init_same (K : Kconfig) (vs : fram_vslot_t) (pm : fram_pm_t)
    (cfg : fram_vslot_config_t) : PmSame pm (fram_vslot_init K vs pm cfg).2.2 := by
  unfold fram_vslot_init
  simp only
  repeat' split
  all_goals first
    | exact ⟨rfl, rfl⟩
    | exact fram_vslot_scan_same _ _ _ _

/-- The window of the view after the newest record is torn. -/
theorem vslot_torn_window (n c : Nat) (hc : 0 < c) (hn : 1 ≤ n) :
    VslotWindow (vslot_torn_view n c) c (n - min n c) (n - 1) := by
  have hlo : n - min n c ≤ n ∧ n ≤ n - min n c + c ∧ (n ≤ c → n - min n c = 0) := by
    rw [Nat.min_def]
    split_ifs <;> omega
  intro s hs q
  constructor
  · intro hv
    unfold vslot_torn_view at hv
    split_ifs at hv with h1 h2
    obtain ⟨f1, f2, f3⟩ := torn_index_facts n c s hc hs (by omega)
    refine ⟨n - 1 - (n - 1 - s) % c, ?_, by omega, f1, ?_⟩
    · rcases Nat.le_total n c with hle | hle
      · rw [hlo.2.2 hle]; exact Nat.zero_le _
      · rw [Nat.min_eq_right hle]; omega
    · injection hv with hv
      exact hv.symm
  · rintro ⟨i, hi1, hi2, hi3, hi4⟩
    have hsi : s ≤ i := by rw [← hi3]; exact Nat.mod_le _ _
    obtain ⟨f1, f2, f3⟩ := torn_index_facts n c s hc hs (by omega)
    have hu : n - 1 - (n - 1 - s) % c = i :=
      index_unique c _ _ (by omega) (by omega) (by rw [f1, hi3])
    unfold vslot_torn_view
    rw [if_neg (by omega), hu, if_neg (by omega), hi4]

/-- A view with an empty window has no valid record. -/
theorem vslot_scan_empty (V : Nat → Option Nat) (c lo hi : Nat) (hw : VslotWindow V c lo hi)
    (he : hi ≤ lo) :
    (vslot_scan_view V (List.range c)
      { best_version := 0, best_slot := 0, found := false }).found = false := by
  apply (vslot_scan_view_spec V (fun s => s < c) (List.range c)
    { best_version := 0, best_slot := 0, found := false }
    (fun s hs => List.mem_range.mp hs) (fun hx => Bool.noConfusion hx)).2.2.2 rfl
  intro s hs
  cases hv : V s with
  | none => rfl
  | some q =>
    obtain ⟨i, h1, h2, _, _⟩ := (hw s (List.mem_range.mp hs) q).mp hv
    omega

/-- The scan of a view returns the record of the window whose version
is the largest. -/
theorem vslot_scan_max (V : Nat → Option Nat) (c lo hi t : Nat) (hw : VslotWindow V c lo hi)
    (hc : 0 < c) (hlt : lo ≤ t) (hth : t < hi)
    (hmax : ∀ i, lo ≤ i → i < hi → i ≠ t → (i + 1) % U32 < (t + 1) % U32) :
    vslot_scan_view V (List.range c) { best_version := 0, best_slot := 0, found := false }
      = { best_version := (t + 1) % U32, best_slot := t % c, found := true } := by
  obtain ⟨s1, _, s3, _⟩ := vslot_scan_view_spec V (fun s => s < c) (List.range c)
    { best_version := 0, best_slot := 0, found := false }
    (fun s hs => List.mem_range.mp hs) (fun hx => Bool.noConfusion hx)
  have hvt : V (t % c) = some ((t + 1) % U32) :=
    (hw (t % c) (Nat.mod_lt _ hc) ((t + 1) % U32)).mpr ⟨t, hlt, hth, rfl, rfl⟩
  obtain ⟨hf, hge⟩ := s3 (t % c) (List.mem_range.mpr (Nat.mod_lt _ hc)) _ hvt
  obtain ⟨hsl, hvr⟩ := s1 hf
  obtain ⟨i, h1, h2, h3, h4⟩ := (hw _ hsl _).mp hvr
  have hit : i = t := by
    by_contra hne
    have := hmax i h1 h2 hne
    omega
  subst hit
  generalize vslot_scan_view V (List.range c)
    { best_version := 0, best_slot := 0, found := false } = r at hf h3 h4
  cases r
  simp only at hf h3 h4
  rw [hf, ← h3, h4]

/-- Zeroing the commit byte of the active slot through the backing buffer. -/
theorem vslot_tear_ok (vs : fram_vslot_t) (p : fram_partition_t) (pm : fram_pm_t)
    (pmem : Nat → Nat) (es : List (List Nat × Nat)) (g : VslotGeom vs p) (h : PmOK pm p pmem)
    (inv : VslotAfter vs pmem es) :
    PmOK (vslot_tear_active vs pm p) p
      (mem_write pmem (((es.length - 1) % vs.slot_count) * vs.slot_size + VSLOT_HEADER_SIZE
        + vs.max_payload) [0]) ∧
    PmSame pm (vslot_tear_active vs pm p) := by
  have hcpos := g.slot_count_pos
  obtain ⟨_, _, _, hfit, hsz⟩ := vslot_slot_offset_eq vs p pm pmem g h
    ((es.length - 1) % vs.slot_count) (Nat.mod_lt _ hcpos)
  rw [Nat.add_mul, Nat.one_mul] at hfit
  have hes := g.slot_size
  obtain ⟨mem, size, hd, hfit2, _⟩ := h.device
  have hsl := hd.size_lt
  obtain ⟨off, hoffdef⟩ : ∃ off, off = ((es.length - 1) % vs.slot_count) * vs.slot_size
      + VSLOT_HEADER_SIZE + vs.max_payload := ⟨_, rfl⟩
  have hoff : (p.offset + ((es.length - 1) % vs.slot_count) * vs.slot_size + VSLOT_HEADER_SIZE
      + vs.max_payload) % U32 = p.offset + off := by
    rw [Nat.mod_eq_of_lt (by omega)]
    omega
  have heq : vslot_tear_active vs pm p =
      { pm with dev := mock_poke pm.dev (p.offset + off) 0 } := by
    unfold vslot_tear_active
    simp only [inv.active_slot, hoff]
  rw [heq, ← hoffdef]
  exact ⟨pm_poke_ok pm p pmem _ 0 h (by omega), rfl, rfl⟩

/-- The records of the window other than the newest survive the tear. -/
theorem vslot_torn_records (vs : fram_vslot_t) (p : fram_partition_t)
    (pmem : Nat → Nat) (es : List (List Nat × Nat)) (g : VslotGeom vs p)
    (inv : VslotAfter vs pmem es) (i : Nat) (hi : i + 1 < es.length)
    (hw : es.length ≤ i + vs.slot_count) :
    VSlotRec (mem_write pmem (((es.length - 1) % vs.slot_count) * vs.slot_size
        + VSLOT_HEADER_SIZE + vs.max_payload) [0]) vs (i % vs.slot_count)
      (vslot_header_for vs.magic ((i + 1) % U32) (es.getD i ([], 0)).2 (es.getD i ([], 0)).1)
      (es.getD i ([], 0)).1 := by
  have hes := g.slot_size
  apply vslot_rec_frame pmem _ vs vs _ _ _ rfl rfl hes (inv.bounded i (by omega)) _
    (inv.window i (by omega) hw)
  intro k hk
  apply mem_write_outside
  have hd := slot_disjoint vs.slot_size (i % vs.slot_count)
    ((es.length - 1) % vs.slot_count) k
    (mod_ne_of_window _ _ _ (by omega) (by omega)) hk
  rw [Nat.add_mul, Nat.one_mul] at hd
  simp only [List.length_singleton]
  omega

/-- The view of the slots after the tear describes the partition. -/
theorem vslot_torn_view_ok (vs : fram_vslot_t) (p : fram_partition_t)
    (pmem : Nat → Nat) (es : List (List Nat × Nat)) (g : VslotGeom vs p)
    (inv : VslotAfter vs pmem es) (hn : 1 ≤ es.length) :
    VslotView vs (mem_write pmem (((es.length - 1) % vs.slot_count) * vs.slot_size
        + VSLOT_HEADER_SIZE + vs.max_payload) [0])
      (vslot_torn_view es.length vs.slot_count) := by
  have hcpos := g.slot_count_pos
  have hes := g.slot_size
  intro s hs
  constructor
  · intro q hq
    obtain ⟨i, h1, h2, h3, h4⟩ :=
      (vslot_torn_window es.length vs.slot_count hcpos hn s hs q).mp hq
    have hwin : es.length ≤ i + vs.slot_count := by
      have : es.length - min es.length vs.slot_count + vs.slot_count ≥ es.length := by
        rw [Nat.min_def]
        split_ifs <;> omega
      omega
    have hb := inv.bounded i (by omega)
    refine ⟨by rw [h4]; exact Nat.mod_lt _ (by decide), (es.getD i ([], 0)).2,
      (es.getD i ([], 0)).1, hb, ?_⟩
    rw [h4, ← h3]
    exact vslot_torn_records vs p pmem es g inv i (by omega) hwin
  · intro hv
    unfold vslot_torn_view at hv
    split_ifs at hv with h1 h2
    · have hne : s ≠ (es.length - 1) % vs.slot_count := by
        rw [Nat.mod_eq_of_lt (by omega)]
        omega
      have hd := slot_disjoint vs.slot_size s ((es.length - 1) % vs.slot_count)
        (VSLOT_HEADER_SIZE + vs.max_payload) hne (by omega)
      rw [Nat.add_mul, Nat.one_mul] at hd
      rw [mem_write_outside _ _ _ _ (by simp only [List.length_singleton]; omega)]
      exact inv.fresh s h1 hs
    · obtain ⟨f1, _, _⟩ := torn_index_facts es.length vs.slot_count s hcpos hs (by omega)
      rw [h2] at f1
      rw [f1]
      have := mem_write_inside pmem (s * vs.slot_size + VSLOT_HEADER_SIZE + vs.max_payload)
        [0] 0 (by decide)
      rw [Nat.add_zero] at this
      rw [this]
      decide

/-- A view of the slots only depends on the geometry of the slot store. -/
theorem vslot_view_congr (r1 r2 : fram_vslot_t) (pmem : Nat → Nat) (V : Nat → Option Nat)
    (hc : r1.slot_count = r2.slot_count) (he : r1.slot_size = r2.slot_size)
    (hm : r1.max_payload = r2.max_payload) (hg : r1.magic = r2.magic)
    (h : VslotView r1 pmem V) : VslotView r2 pmem V := by
  intro s hs
  rw [← hc] at hs
  obtain ⟨a, b⟩ := h s hs
  constructor
  · intro q hq
    obtain ⟨hq1, now, payload, l1, hrec⟩ := a q hq
    refine ⟨hq1, now, payload, by rw [← hm]; exact l1, ?_⟩
    rw [← hg]
    exact ⟨by rw [← he]; exact hrec.image, by rw [← he, ← hm]; exact hrec.commit⟩
  · intro hv
    rw [← he, ← hm]
    exact b hv

/-- Recovery from a view with an empty window gives the empty slot store. -/
theorem vslot_recovered_empty (p : fram_partition_t) (cfg : fram_vslot_config_t)
    (V : Nat → Option Nat) (lo hi : Nat)
    (hw : VslotWindow V cfg.slot_count lo hi) (he : hi ≤ lo) :
    vslot_recovered p cfg V = vslot_empty p cfg := by
  have hf := vslot_scan_empty V _ lo hi hw he
  simp only [vslot_recovered, hf, Bool.false_eq_true, if_false]

/-- Recovery from a view whose window holds the records `lo ≤ i < hi`, the
record `t` carrying the largest version. -/
theorem vslot_recovered_window (p : fram_partition_t) (cfg : fram_vslot_config_t)
    (V : Nat → Option Nat) (lo hi t : Nat)
    (hw : VslotWindow V cfg.slot_count lo hi) (hc : 0 < cfg.slot_count)
    (hlt : lo ≤ t) (hth : t < hi)
    (hmax : ∀ i, lo ≤ i → i < hi → i ≠ t → (i + 1) % U32 < (t + 1) % U32) :
    vslot_recovered p cfg V =
      { vslot_empty p cfg with
        has_data := true
        active_slot := t % cfg.slot_count
        active_version := (t + 1) % U32 } := by
  have hs := vslot_scan_max V _ lo hi t hw hc hlt hth hmax
  simp only [vslot_recovered, hs, if_true]

/-- The slot store after `fram_vslot_init` on an erased partition and a
successful run of saves. -/
theorem vslot_run_spec (K : Kconfig) (vs0 vs1 vs2 : fram_vslot_t) (pm pm1 pm2 : fram_pm_t)
    (p : fram_partition_t) (pmem : Nat → Nat) (cfg : fram_vslot_config_t)
    (entries : List (List Nat × Nat))
    (hK : 3 * (K.FRAM_VSLOT_MAX_PAYLOAD + VSLOT_HEADER_SIZE + 1) < U32)
    (hmagic : cfg.magic < U32)
    (h : PmOK pm p pmem) (hfind : fram_pm_find pm cfg.partition_name = some p)
    (herased : ∀ i, i < p.size → pmem i = 0xFF)
    (hinit : fram_vslot_init K vs0 pm cfg = (ESP_OK, vs1, pm1))
    (happ : fram_vslot_save_all vs1 pm1 entries = (ESP_OK, vs2, pm2)) :
    ∃ pmem2, VslotGeom vs2 p ∧ PmOK pm2 p pmem2 ∧ VslotAfter vs2 pmem2 entries ∧
      vs1 = vslot_empty p cfg ∧ vs2.slot_count = cfg.slot_count ∧
      vs2.max_payload = cfg.max_payload ∧ vs2.magic = cfg.magic ∧
      vs2.slot_size = (vslot_empty p cfg).slot_size ∧ PmSame pm pm2 := by
  obtain ⟨hr1, g1, h1, inv1⟩ := vslot_init_erased K vs0 vs1 pm pm1 p pmem cfg hfind h herased
    hK hmagic hinit
  obtain ⟨pmem2, g2, h2, inv2, e1, e2, e3, e4⟩ := vslot_save_all_spec p entries vs1 vs2
    pm1 pm2 pmem [] g1 h1 inv1 happ
  rw [List.nil_append] at inv2
  have s1 := fram_vslot_init_same K vs0 pm cfg
  rw [hinit] at s1
  have s2 := fram_vslot_save_all_same entries vs1 pm1
  rw [happ] at s2
  subst hr1
  exact ⟨pmem2, g2, h2, inv2, rfl, e1, e2, e3, e4, PmSame.trans_same _ _ _ s1 s2⟩

/-- Re-initialising after the commit byte of the active slot is zeroed:
`fram_vslot_init` recovers the slot store from the torn view, and the older
records of the window are still stored. -/
theorem vslot_reinit_torn (K : Kconfig) (vs0 vs1 vs2 vsX : fram_vslot_t)
    (pm pm1 pm2 : fram_pm_t) (p : fram_partition_t) (pmem : Nat → Nat)
    (cfg : fram_vslot_config_t) (entries : List (List Nat × Nat))
    (hK : 3 * (K.FRAM_VSLOT_MAX_PAYLOAD + VSLOT_HEADER_SIZE + 1) < U32)
    (hmagic : cfg.magic < U32)
    (h : PmOK pm p pmem) (hfind : fram_pm_find pm cfg.partition_name = some p)
    (herased : ∀ i, i < p.size → pmem i = 0xFF)
    (hinit : fram_vslot_init K vs0 pm cfg = (ESP_OK, vs1, pm1))
    (hn : 1 ≤ entries.length)
    (happ : fram_vslot_save_all vs1 pm1 entries = (ESP_OK, vs2, pm2)) :
    ∃ pm4 pmem3,
      fram_vslot_init K vsX (vslot_tear_active vs2 pm2 p) cfg =
        (ESP_OK, vslot_recovered p cfg (vslot_torn_view entries.length cfg.slot_count), pm4) ∧
      PmOK pm4 p pmem3 ∧ VslotGeom (vslot_empty p cfg) p ∧
      2 ≤ cfg.slot_count ∧ cfg.slot_count ≤ 3 ∧
      (∀ i, i < entries.length → (entries.getD i ([], 0)).1.length ≤ cfg.max_payload) ∧
      ∀ i, i + 1 < entries.length → entries.length ≤ i + cfg.slot_count →
        VSlotRec pmem3 (vslot_empty p cfg) (i % cfg.slot_count)
          (vslot_header_for cfg.magic ((i + 1) % U32) (entries.getD i ([], 0)).2
            (entries.getD i ([], 0)).1)
          (entries.getD i ([], 0)).1 := by
  obtain ⟨pmem2, g2, h2, inv2, hr1, e1, e2, e3, e4, hsame⟩ := vslot_run_spec K vs0 vs1 vs2
    pm pm1 pm2 p pmem cfg entries hK hmagic h hfind herased hinit happ
  obtain ⟨hsc, hsc3, hmp, hle, hcap⟩ := vslot_init_ok_cfg K vs0 vs1 pm pm1 p cfg hfind hK hinit
  obtain ⟨g, hes⟩ := vslot_empty_geom K p cfg hsc hle (by omega) hmagic hcap
  have hsame3 := (vslot_tear_ok vs2 p pm2 pmem2 entries g2 h2 inv2).2
  obtain ⟨pmem3, h3, hV2, hrec2⟩ : ∃ pmem3, PmOK (vslot_tear_active vs2 pm2 p) p pmem3 ∧
      VslotView vs2 pmem3 (vslot_torn_view entries.length vs2.slot_count) ∧
      ∀ i, i + 1 < entries.length → entries.length ≤ i + vs2.slot_count →
        VSlotRec pmem3 vs2 (i % vs2.slot_count)
          (vslot_header_for vs2.magic ((i + 1) % U32) (entries.getD i ([], 0)).2
            (entries.getD i ([], 0)).1)
          (entries.getD i ([], 0)).1 :=
    ⟨_, (vslot_tear_ok vs2 p pm2 pmem2 entries g2 h2 inv2).1,
      vslot_torn_view_ok vs2 p pmem2 entries g2 inv2 hn,
      fun i hi hw => vslot_torn_records vs2 p pmem2 entries g2 inv2 i hi hw⟩
  have hfind3 : fram_pm_find (vslot_tear_active vs2 pm2 p) cfg.partition_name = some p := by
    rw [fram_pm_find_same pm _ _ (PmSame.trans_same _ _ _ hsame hsame3)]
    exact hfind
  have hV := vslot_view_congr vs2 (vslot_empty p cfg) _ _ e1 e4 e2 e3 hV2
  rw [e1] at hV
  obtain ⟨pm4, hi4, h4⟩ := vslot_init_view K vsX _ p _ cfg _ hfind3 h3 hsc hsc3 hmp hle
    (by omega) hmagic hcap hV
  refine ⟨pm4, pmem3, hi4, h4, g, hsc, hsc3, ?_, ?_⟩
  · intro i hi
    rw [← e2]
    exact inv2.bounded i hi
  · intro i hi hw
    have hrec := hrec2 i hi (by rw [e1]; exact hw)
    rw [e1, e3] at hrec
    refine ⟨by rw [← e4]; exact hrec.image, ?_⟩
    show pmem3 (i % cfg.slot_count * (vslot_empty p cfg).slot_size + VSLOT_HEADER_SIZE
      + cfg.max_payload) = FRAM_VSLOT_COMMIT
    rw [← e4, ← e2]
    exact hrec.commit

theorem fram_vslot_get_version_eq (vs : fram_vslot_t) :
    fram_vslot_get_version vs = vs.active_version := rfl

theorem fram_vslot_has_data_eq (vs : fram_vslot_t) : fram_vslot_has_data vs = vs.has_data := rfl

/-- The slot store after `k ≥ 1` successful saves on an erased partition:
`fram_vslot_load` returns the last value, the version is `k mod 2^32` and the
active slot is `(k - 1) mod slot_count`. -/
theorem vslot_after_saves (K : Kconfig) (vs0 vs1 vs2 : fram_vslot_t)
    (pm pm1 pm2 : fram_pm_t) (p : fram_partition_t) (pmem : Nat → Nat)
    (cfg : fram_vslot_config_t) (entries : List (List Nat × Nat)) (buf : List Nat) (cap : Nat)
    (hK : 3 * (K.FRAM_VSLOT_MAX_PAYLOAD + VSLOT_HEADER_SIZE + 1) < U32)
    (hmagic : cfg.magic < U32)
    (h : PmOK pm p pmem) (hfind : fram_pm_find pm cfg.partition_name = some p)
    (herased : ∀ i, i < p.size → pmem i = 0xFF)
    (hinit : fram_vslot_init K vs0 pm cfg = (ESP_OK, vs1, pm1))
    (hk1 : 1 ≤ entries.length)
    (happ : fram_vslot_save_all vs1 pm1 entries = (ESP_OK, vs2, pm2))
    (hcap : (entries.getD (entries.length - 1) ([], 0)).1.length ≤ cap) :
    (∃ pm3, fram_vslot_load vs2 pm2 { payload := some buf, len := some cap } =
      (ESP_OK,
        { payload := some ((entries.getD (entries.length - 1) ([], 0)).1
            ++ buf.drop (entries.getD (entries.length - 1) ([], 0)).1.length)
          len := some (entries.getD (entries.length - 1) ([], 0)).1.length }, pm3)) ∧
    fram_vslot_get_version vs2 = entries.length % U32 ∧
    vs2.active_slot = (entries.length - 1) % cfg.slot_count := by
  obtain ⟨pmem2, g2, h2, inv2, hr1, e1, e2, e3, e4, _⟩ := vslot_run_spec K vs0 vs1 vs2 pm
    pm1 pm2 p pmem cfg entries hK hmagic h hfind herased hinit happ
  have hcpos := g2.slot_count_pos
  have hd : vs2.has_data = true := by
    rw [inv2.has_data]
    simp only [decide_eq_true_eq]
    omega
  have hrec := inv2.window (entries.length - 1) (by omega) (by omega)
  rw [← inv2.active_slot] at hrec
  have hs : vs2.active_slot < vs2.slot_count := by
    rw [inv2.active_slot]
    exact Nat.mod_lt _ hcpos
  obtain ⟨pm3, hl3, _⟩ := vslot_load_rec vs2 p pm2 pmem2 _ _ _ buf cap g2 h2 hd hs
    (Nat.mod_lt _ (by decide)) (inv2.bounded _ (by omega)) hcap hrec
  refine ⟨⟨pm3, hl3⟩, ?_, ?_⟩
  · rw [fram_vslot_get_version_eq, inv2.active_version]
  · rw [inv2.active_slot, e1]

/-- C4 (amended). VSlot save/load round trip: on a working, erased partition,
after `fram_vslot_init` returned `ESP_OK` (so `slot_count` is 2 or 3) and `k`
saves with `1 ≤ k < 2^32` all returned `ESP_OK`, `fram_vslot_load` with a
buffer that holds `v_k` returns `ESP_OK` with the bytes and the length of
`v_k`, `fram_vslot_get_version` returns `k`, and the active slot is
`(k - 1) mod slot_count`. -/
theorem vslot_save_load_round_trip (K : Kconfig) (vs0 vs1 vs2 : fram_vslot_t)
    (pm pm1 pm2 : fram_pm_t) (p : fram_partition_t) (pmem : Nat → Nat)
    (cfg : fram_vslot_config_t) (entries : List (List Nat × Nat)) (buf : List Nat) (cap : Nat)
    (hK : 3 * (K.FRAM_VSLOT_MAX_PAYLOAD + VSLOT_HEADER_SIZE + 1) < U32)
    (hmagic : cfg.magic < U32)
    (h : PmOK pm p pmem) (hfind : fram_pm_find pm cfg.partition_name = some p)
    (herased : ∀ i, i < p.size → pmem i = 0xFF)
    (hinit : fram_vslot_init K vs0 pm cfg = (ESP_OK, vs1, pm1))
    (hk1 : 1 ≤ entries.length) (hk32 : entries.length < U32)
    (happ : fram_vslot_save_all vs1 pm1 entries = (ESP_OK, vs2, pm2))
    (hcap : (entries.getD (entries.length - 1) ([], 0)).1.length ≤ cap) :
    (cfg.slot_count = 2 ∨ cfg.slot_count = 3) ∧
    (∃ pm3, fram_vslot_load vs2 pm2 { payload := some buf, len := some cap } =
      (ESP_OK,
        { payload := some ((entries.getD (entries.length - 1) ([], 0)).1
            ++ buf.drop (entries.getD (entries.length - 1) ([], 0)).1.length)
          len := some (entries.getD (entries.length - 1) ([], 0)).1.length }, pm3)) ∧
    fram_vslot_get_version vs2 = entries.length ∧
    vs2.active_slot = (entries.length - 1) % cfg.slot_count := by
  obtain ⟨hl, hv, hs⟩ := vslot_after_saves K vs0 vs1 vs2 pm pm1 pm2 p pmem cfg entries buf cap
    hK hmagic h hfind herased hinit hk1 happ hcap
  obtain ⟨hsc, hsc3, _⟩ := vslot_init_ok_cfg K vs0 vs1 pm pm1 p cfg hfind hK hinit
  rw [Nat.mod_eq_of_lt hk32] at hv
  exact ⟨by omega, hl, hv, hs⟩

/-- C7 (amended). VSlot recovery under a torn active slot: on a working,
erased partition, after `fram_vslot_init` (slot_count 2 or 3) and `k` successful
saves with `2 ≤ k ≤ 2^32`, zeroing the commit byte of the active slot and
running `fram_vslot_init` again returns `ESP_OK` with `has_data = true` and
version `k - 1`; `fram_vslot_load` then returns the bytes of `v_{k-1}` and
`fram_vslot_peek_len` returns the length of `v_{k-1}`. -/
theorem vslot_recovery_torn_active (K : Kconfig) (vs0 vs1 vs2 vsX : fram_vslot_t)
    (pm pm1 pm2 : fram_pm_t) (p : fram_partition_t) (pmem : Nat → Nat)
    (cfg : fram_vslot_config_t) (entries : List (List Nat × Nat)) (buf : List Nat)
    (cap len0 : Nat)
    (hK : 3 * (K.FRAM_VSLOT_MAX_PAYLOAD + VSLOT_HEADER_SIZE + 1) < U32)
    (hmagic : cfg.magic < U32)
    (h : PmOK pm p pmem) (hfind : fram_pm_find pm cfg.partition_name = some p)
    (herased : ∀ i, i < p.size → pmem i = 0xFF)
    (hinit : fram_vslot_init K vs0 pm cfg = (ESP_OK, vs1, pm1))
    (hk2 : 2 ≤ entries.length) (hk32 : entries.length ≤ U32)
    (happ : fram_vslot_save_all vs1 pm1 entries = (ESP_OK, vs2, pm2))
    (hcap : (entries.getD (entries.length - 2) ([], 0)).1.length ≤ cap) :
    (fram_vslot_init K vsX (vslot_tear_active vs2 pm2 p) cfg).1 = ESP_OK ∧
    fram_vslot_has_data (fram_vslot_init K vsX (vslot_tear_active vs2 pm2 p) cfg).2.1 = true ∧
    fram_vslot_get_version (fram_vslot_init K vsX (vslot_tear_active vs2 pm2 p) cfg).2.1
      = entries.length - 1 ∧
    (∃ pm4, fram_vslot_load (fram_vslot_init K vsX (vslot_tear_active vs2 pm2 p) cfg).2.1
        (fram_vslot_init K vsX (vslot_tear_active vs2 pm2 p) cfg).2.2
        { payload := some buf, len := some cap } =
      (ESP_OK,
        { payload := some ((entries.getD (entries.length - 2) ([], 0)).1
            ++ buf.drop (entries.getD (entries.length - 2) ([], 0)).1.length)
          len := some (entries.getD (entries.length - 2) ([], 0)).1.length }, pm4)) ∧
    (∃ pm5, fram_vslot_peek_len (fram_vslot_init K vsX (vslot_tear_active vs2 pm2 p) cfg).2.1
        (fram_vslot_init K vsX (vslot_tear_active vs2 pm2 p) cfg).2.2 (some len0) =
      (ESP_OK, some (entries.getD (entries.length - 2) ([], 0)).1.length, pm5)) := by
  obtain ⟨pm4, pmem3, hi4, h4, g, hsc, hsc3, hbd, hrecs⟩ := vslot_reinit_torn K vs0 vs1 vs2
    vsX pm pm1 pm2 p pmem cfg entries hK hmagic h hfind herased hinit (by omega) happ
  have hw := vslot_torn_window entries.length cfg.slot_count (by omega) (by omega)
  have hmn : 2 ≤ min entries.length cfg.slot_count ∧
      min entries.length cfg.slot_count ≤ entries.length ∧
      min entries.length cfg.slot_count ≤ cfg.slot_count := by
    rw [Nat.min_def]
    split_ifs <;> omega
  have hR := vslot_recovered_window p cfg _ _ _ (entries.length - 2) hw (by omega) (by omega)
    (by omega) (fun i h1 h2 h3 => by
      rw [U32_eq] at hk32 ⊢
      rw [Nat.mod_eq_of_lt (by omega), Nat.mod_eq_of_lt (by omega)]
      omega)
  have hver : (entries.length - 2 + 1) % U32 = entries.length - 1 := by
    rw [U32_eq] at hk32 ⊢
    omega
  rw [hver] at hR
  have hrec := hrecs (entries.length - 2) (by omega) (by omega)
  rw [hver] at hrec
  have hRd : (vslot_recovered p cfg (vslot_torn_view entries.length cfg.slot_count)).has_data
      = true := by rw [hR]
  have hRv : (vslot_recovered p cfg
      (vslot_torn_view entries.length cfg.slot_count)).active_version = entries.length - 1 := by
    rw [hR]
  have hRs : (vslot_recovered p cfg (vslot_torn_view entries.length cfg.slot_count)).active_slot
      < (vslot_recovered p cfg (vslot_torn_view entries.length cfg.slot_count)).slot_count := by
    rw [hR]
    exact Nat.mod_lt _ (by omega)
  have gR : VslotGeom (vslot_recovered p cfg
      (vslot_torn_view entries.length cfg.slot_count)) p := by
    rw [hR]
    exact ⟨g.part, g.slot_size, g.slot_count_pos, g.fits, g.magic, g.mutex⟩
  have hRrec : VSlotRec pmem3 (vslot_recovered p cfg
      (vslot_torn_view entries.length cfg.slot_count))
      (vslot_recovered p cfg (vslot_torn_view entries.length cfg.slot_count)).active_slot
      (vslot_header_for (vslot_recovered p cfg
        (vslot_torn_view entries.length cfg.slot_count)).magic
        (entries.length - 1) (entries.getD (entries.length - 2) ([], 0)).2
        (entries.getD (entries.length - 2) ([], 0)).1)
      (entries.getD (entries.length - 2) ([], 0)).1 := by
    rw [hR]
    exact ⟨hrec.image, hrec.commit⟩
  have hRm : (vslot_recovered p cfg
      (vslot_torn_view entries.length cfg.slot_count)).max_payload = cfg.max_payload := by
    rw [hR]; rfl
  rw [hi4]
  generalize vslot_recovered p cfg (vslot_torn_view entries.length cfg.slot_count) = R
    at hRd hRv hRs gR hRrec hRm
  have hlb : (entries.getD (entries.length - 2) ([], 0)).1.length ≤ R.max_payload := by
    rw [hRm]
    exact hbd _ (by omega)
  have hvlt : entries.length - 1 < U32 := by omega
  obtain ⟨pm5, hl5, _⟩ := vslot_load_rec R p pm4 pmem3 _ _ _ buf cap gR h4 hRd hRs hvlt hlb
    hcap hRrec
  obtain ⟨pm6, hl6, _⟩ := vslot_peek_len_rec R p pm4 pmem3 _ _ _ len0 gR h4 hRd hRs hvlt hlb
    hRrec
  exact ⟨rfl, hRd, hRv, ⟨pm5, hl5⟩, ⟨pm6, hl6⟩⟩

/-! ### The example slot store of `test_fram.c` -/

theorem example_pm_vslot_ok : PmOK example_pm example_vslot_part (fun _ => 0xFF) :=
  ⟨rfl, by decide, (fun _ => 0xFF), 32768, ⟨rfl, rfl, rfl, rfl, by decide, rfl⟩, by decide,
    fun _ _ => rfl⟩

theorem example_vslot_init_ok (cfg : fram_vslot_config_t)
    (hname : cfg.partition_name = [0x76, 0x73, 0x6C, 0x6F, 0x74])
    (hmp : cfg.max_payload = 16) (hsc : 2 ≤ cfg.slot_count) (hsc3 : cfg.slot_count ≤ 3)
    (hmagic : cfg.magic < U32) :
    fram_pm_find example_pm cfg.partition_name = some example_vslot_part ∧
    fram_vslot_init example_K example_vslot0 example_pm cfg =
      (ESP_OK, (fram_vslot_init example_K example_vslot0 example_pm cfg).2.1,
        (fram_vslot_init example_K example_vslot0 example_pm cfg).2.2) := by
  have hfind : fram_pm_find example_pm cfg.partition_name = some example_vslot_part := by
    rw [hname]
    decide
  refine ⟨hfind, ?_⟩
  apply triple_eta_ok
  have hsz : example_vslot_part.size = 2048 := rfl
  have h24 : VSLOT_HEADER_SIZE = 24 := rfl
  obtain ⟨pm1, hi, _⟩ := vslot_init_view example_K example_vslot0 example_pm example_vslot_part
    (fun _ => 0xFF) cfg (fun _ => none) hfind example_pm_vslot_ok hsc hsc3
    (by omega) (by rw [hmp]; decide) (by decide) hmagic
    (by
      rw [hmp, hsz, h24]
      have : cfg.slot_count * (24 + 16 + 1) ≤ 3 * (24 + 16 + 1) :=
        Nat.mul_le_mul_right _ hsc3
      omega)
    (fun slot _ => ⟨fun q hq => Option.noConfusion hq,
      fun _ => (by decide : (255 : Nat) ≠ FRAM_VSLOT_COMMIT)⟩)
  rw [hi]

theorem example_vslot_run_ok (cfg : fram_vslot_config_t)
    (hname : cfg.partition_name = [0x76, 0x73, 0x6C, 0x6F, 0x74])
    (hmp : cfg.max_payload = 16) (hsc : 2 ≤ cfg.slot_count) (hsc3 : cfg.slot_count ≤ 3)
    (hmagic : cfg.magic < U32) (entries : List (List Nat × Nat))
    (hb : ∀ e ∈ entries, e.1.length ≤ 16) :
    fram_vslot_save_all (fram_vslot_init example_K example_vslot0 example_pm cfg).2.1
      (fram_vslot_init example_K example_vslot0 example_pm cfg).2.2 entries =
      (ESP_OK, (example_vslot_run cfg entries).2.1, (example_vslot_run cfg entries).2.2) := by
  obtain ⟨hfind, hinit⟩ := example_vslot_init_ok cfg hname hmp hsc hsc3 hmagic
  obtain ⟨hr1, g1, h1, inv1⟩ := vslot_init_erased example_K example_vslot0 _ example_pm _
    example_vslot_part (fun _ => 0xFF) cfg hfind example_pm_vslot_ok
    (fun _ _ => rfl) (by decide) hmagic hinit
  have hmp1 : (fram_vslot_init example_K example_vslot0 example_pm cfg).2.1.max_payload
      = 16 := by
    rw [hr1]; exact hmp
  obtain ⟨r, q, pmem1, hall, _⟩ := vslot_save_all_ok example_vslot_part entries _ _ _ [] g1 h1
    inv1 (fun e he => by
      rw [hmp1]
      exact hb e he)
  apply triple_eta_ok (example_vslot_run cfg entries)
  show (fram_vslot_save_all _ _ entries).1 = ESP_OK
  rw [hall]

/-- Witness for C4: the two saves of the vslot test on the erased example
partition with two slots, then `fram_vslot_load` into a four-byte buffer. -/
theorem vslot_save_load_round_trip_witness :
    (example_vslot_cfg.slot_count = 2 ∨ example_vslot_cfg.slot_count = 3) ∧
    (∃ pm3, fram_vslot_load (example_vslot_run example_vslot_cfg example_vslot_entries).2.1
        (example_vslot_run example_vslot_cfg example_vslot_entries).2.2
        { payload := some [0, 0, 0, 0], len := some 4 } =
      (ESP_OK, { payload := some [0x22, 0x22, 0x22, 0x22], len := some 4 }, pm3)) ∧
    fram_vslot_get_version (example_vslot_run example_vslot_cfg example_vslot_entries).2.1 = 2 ∧
    (example_vslot_run example_vslot_cfg example_vslot_entries).2.1.active_slot = 1 := by
  have hw := vslot_save_load_round_trip example_K example_vslot0 _ _ example_pm _ _
    example_vslot_part (fun _ => 0xFF) example_vslot_cfg example_vslot_entries [0, 0, 0, 0] 4
    (by decide) (by decide) example_pm_vslot_ok
    (example_vslot_init_ok example_vslot_cfg rfl rfl (by decide) (by decide) (by decide)).1
    (fun _ _ => rfl)
    (example_vslot_init_ok example_vslot_cfg rfl rfl (by decide) (by decide) (by decide)).2
    (by decide) (by decide)
    (example_vslot_run_ok example_vslot_cfg rfl rfl (by decide) (by decide) (by decide)
      example_vslot_entries (by decide)) (by decide)
  exact ⟨hw.1, hw.2.1, hw.2.2.1, hw.2.2.2⟩

theorem example_vslot_wrap_length : example_vslot_wrap.length = 4294967296 :=
  List.length_replicate _ _

theorem example_vslot_wrap_bounded (e : List Nat × Nat) (he : e ∈ example_vslot_wrap) :
    e.1.length ≤ 16 := by
  rw [List.eq_of_mem_replicate he]
  decide

theorem example_vslot_wrap_get (i : Nat) (hi : i < example_vslot_wrap.length) :
    example_vslot_wrap.getD i ([], 0) = ([0x11, 0x11, 0x11, 0x11], 0) := by
  rw [List.getD_eq_getElem _ _ hi]
  exact List.eq_of_mem_replicate (List.getElem_mem hi)

/-- Counterexample to C4 as stated: on the example partition with two slots,
`fram_vslot_init` and `k = 2^32` saves all return `ESP_OK`, and
`fram_vslot_get_version` then returns 0, not `k`. -/
theorem vslot_save_load_round_trip_counterexample :
    fram_vslot_init example_K example_vslot0 example_pm example_vslot_cfg =
      (ESP_OK, (fram_vslot_init example_K example_vslot0 example_pm example_vslot_cfg).2.1,
        (fram_vslot_init example_K example_vslot0 example_pm example_vslot_cfg).2.2) ∧
    fram_vslot_save_all
      (fram_vslot_init example_K example_vslot0 example_pm example_vslot_cfg).2.1
      (fram_vslot_init example_K example_vslot0 example_pm example_vslot_cfg).2.2
      example_vslot_wrap =
      (ESP_OK, (example_vslot_run example_vslot_cfg example_vslot_wrap).2.1,
        (example_vslot_run example_vslot_cfg example_vslot_wrap).2.2) ∧
    example_vslot_wrap.length = 4294967296 ∧
    fram_vslot_get_version (example_vslot_run example_vslot_cfg example_vslot_wrap).2.1 = 0 := by
  have hi := example_vslot_init_ok example_vslot_cfg rfl rfl (by decide) (by decide)
    (by decide)
  have hrun := example_vslot_run_ok example_vslot_cfg rfl rfl (by decide) (by decide)
    (by decide) example_vslot_wrap example_vslot_wrap_bounded
  obtain ⟨_, hv, _⟩ := vslot_after_saves example_K example_vslot0 _ _ example_pm _ _
    example_vslot_part (fun _ => 0xFF) example_vslot_cfg example_vslot_wrap [] 4
    (by decide) (by decide) example_pm_vslot_ok hi.1 (fun _ _ => rfl) hi.2
    (by rw [example_vslot_wrap_length]; decide) hrun
    (by
      rw [example_vslot_wrap_get _ (by rw [example_vslot_wrap_length]; decide)]
      decide)
  rw [example_vslot_wrap_length] at hv
  exact ⟨hi.2, hrun, example_vslot_wrap_length, hv⟩

/-- Witness for C7: the vslot test of `test_fram.c`. After two saves the commit
byte of the active slot is zeroed; `fram_vslot_init` then recovers the first
value with version 1. -/
theorem vslot_recovery_torn_active_witness :
    (fram_vslot_init example_K example_vslot0
      (vslot_tear_active (example_vslot_run example_vslot_cfg example_vslot_entries).2.1
        (example_vslot_run example_vslot_cfg example_vslot_entries).2.2 example_vslot_part)
      example_vslot_cfg).1 = ESP_OK ∧
    fram_vslot_has_data (fram_vslot_init example_K example_vslot0
      (vslot_tear_active (example_vslot_run example_vslot_cfg example_vslot_entries).2.1
        (example_vslot_run example_vslot_cfg example_vslot_entries).2.2 example_vslot_part)
      example_vslot_cfg).2.1 = true ∧
    fram_vslot_get_version (fram_vslot_init example_K example_vslot0
      (vslot_tear_active (example_vslot_run example_vslot_cfg example_vslot_entries).2.1
        (example_vslot_run example_vslot_cfg example_vslot_entries).2.2 example_vslot_part)
      example_vslot_cfg).2.1 = 1 ∧
    (∃ pm4, fram_vslot_load (fram_vslot_init example_K example_vslot0
        (vslot_tear_active (example_vslot_run example_vslot_cfg example_vslot_entries).2.1
          (example_vslot_run example_vslot_cfg example_vslot_entries).2.2 example_vslot_part)
        example_vslot_cfg).2.1
        (fram_vslot_init example_K example_vslot0
        (vslot_tear_active (example_vslot_run example_vslot_cfg example_vslot_entries).2.1
          (example_vslot_run example_vslot_cfg example_vslot_entries).2.2 example_vslot_part)
        example_vslot_cfg).2.2
        { payload := some [0, 0, 0, 0], len := some 4 } =
      (ESP_OK, { payload := some [0x11, 0x11, 0x11, 0x11], len := some 4 }, pm4)) ∧
    (∃ pm5, fram_vslot_peek_len (fram_vslot_init example_K example_vslot0
        (vslot_tear_active (example_vslot_run example_vslot_cfg example_vslot_entries).2.1
          (example_vslot_run example_vslot_cfg example_vslot_entries).2.2 example_vslot_part)
        example_vslot_cfg).2.1
        (fram_vslot_init example_K example_vslot0
        (vslot_tear_active (example_vslot_run example_vslot_cfg example_vslot_entries).2.1
          (example_vslot_run example_vslot_cfg example_vslot_entries).2.2 example_vslot_part)
        example_vslot_cfg).2.2 (some 0) =
      (ESP_OK, some 4, pm5)) := by
  have hw := vslot_recovery_torn_active example_K example_vslot0 _ _ example_vslot0 example_pm
    _ _ example_vslot_part (fun _ => 0xFF) example_vslot_cfg example_vslot_entries
    [0, 0, 0, 0] 4 0 (by decide) (by decide) example_pm_vslot_ok
    (example_vslot_init_ok example_vslot_cfg rfl rfl (by decide) (by decide) (by decide)).1
    (fun _ _ => rfl)
    (example_vslot_init_ok example_vslot_cfg rfl rfl (by decide) (by decide) (by decide)).2
    (by decide) (by decide)
    (example_vslot_run_ok example_vslot_cfg rfl rfl (by decide) (by decide) (by decide)
      example_vslot_entries (by decide)) (by decide)
  exact ⟨hw.1, hw.2.1, hw.2.2.1, hw.2.2.2.1, hw.2.2.2.2⟩

theorem example_vslot_wrap3_length : example_vslot_wrap3.length = 4294967297 := by
  unfold example_vslot_wrap3
  rw [List.length_append, List.length_replicate]
  rfl

theorem example_vslot_wrap3_bounded (e : List Nat × Nat) (he : e ∈ example_vslot_wrap3) :
    e.1.length ≤ 16 := by
  unfold example_vslot_wrap3 at he
  rcases List.mem_append.mp he with h | h
  · rw [List.eq_of_mem_replicate h]
    decide
  · simp only [List.mem_cons, List.mem_singleton, List.not_mem_nil, or_false] at h
    rcases h with rfl | rfl | rfl <;> decide

theorem example_vslot_wrap3_get (j : Nat) :
    example_vslot_wrap3.getD (4294967294 + j) ([], 0)
      = [([0x11], 0), ([0x22], 0), ([0x33], 0)].getD j ([], 0) := by
  unfold example_vslot_wrap3
  rw [List.getD_append_right _ _ _ _ (by rw [List.length_replicate]; omega),
    List.length_replicate, Nat.add_sub_cancel_left]

theorem example_vslot_wrap3_window :
    VslotWindow (vslot_torn_view 4294967297 example_vslot_cfg3.slot_count)
      example_vslot_cfg3.slot_count 4294967294 4294967296 := by
  have hw := vslot_torn_window 4294967297 3 (by decide) (by decide)
  have hmin : min 4294967297 3 = 3 := by decide
  rw [hmin] at hw
  have hlo : 4294967297 - 3 = 4294967294 := by decide
  have hhi : 4294967297 - 1 = 4294967296 := by decide
  rw [hlo, hhi] at hw
  exact hw

theorem example_vslot_wrap3_recovered :
    vslot_recovered example_vslot_part example_vslot_cfg3
      (vslot_torn_view 4294967297 example_vslot_cfg3.slot_count) =
      { vslot_empty example_vslot_part example_vslot_cfg3 with
        has_data := true
        active_slot := 4294967294 % example_vslot_cfg3.slot_count
        active_version := (4294967294 + 1) % U32 } :=
  vslot_recovered_window example_vslot_part example_vslot_cfg3 _ 4294967294 4294967296
    4294967294 example_vslot_wrap3_window (by decide) (by decide) (by decide)
    (fun i h1 h2 h3 => by
      rw [U32_eq]
      omega)

/-- Counterexample to C7 as stated: on the example partition with three slots,
`fram_vslot_init` and `k = 2^32 + 1` saves all return `ESP_OK`; the last three
values are `0x11`, `0x22` (that is `v_{k-1}`) and `0x33`, stored with the
versions `2^32 - 1`, `0` and `1`. After the commit byte of the active slot is
zeroed, `fram_vslot_init` takes the record of version `2^32 - 1` for the newest
one, and `fram_vslot_load` returns `0x11`, not `v_{k-1}`. -/
theorem vslot_recovery_torn_active_counterexample :
    fram_vslot_init example_K example_vslot0 example_pm example_vslot_cfg3 =
      (ESP_OK, (fram_vslot_init example_K example_vslot0 example_pm example_vslot_cfg3).2.1,
        (fram_vslot_init example_K example_vslot0 example_pm example_vslot_cfg3).2.2) ∧
    fram_vslot_save_all
      (fram_vslot_init example_K example_vslot0 example_pm example_vslot_cfg3).2.1
      (fram_vslot_init example_K example_vslot0 example_pm example_vslot_cfg3).2.2
      example_vslot_wrap3 =
      (ESP_OK, (example_vslot_run example_vslot_cfg3 example_vslot_wrap3).2.1,
        (example_vslot_run example_vslot_cfg3 example_vslot_wrap3).2.2) ∧
    example_vslot_wrap3.length = 4294967297 ∧
    example_vslot_wrap3.getD (4294967297 - 2) ([], 0) = ([0x22], 0) ∧
    (fram_vslot_init example_K example_vslot0
      (vslot_tear_active (example_vslot_run example_vslot_cfg3 example_vslot_wrap3).2.1
        (example_vslot_run example_vslot_cfg3 example_vslot_wrap3).2.2 example_vslot_part)
      example_vslot_cfg3).1 = ESP_OK ∧
    fram_vslot_get_version (fram_vslot_init example_K example_vslot0
      (vslot_tear_active (example_vslot_run example_vslot_cfg3 example_vslot_wrap3).2.1
        (example_vslot_run example_vslot_cfg3 example_vslot_wrap3).2.2 example_vslot_part)
      example_vslot_cfg3).2.1 = 4294967295 ∧
    (∃ pm4, fram_vslot_load (fram_vslot_init example_K example_vslot0
        (vslot_tear_active (example_vslot_run example_vslot_cfg3 example_vslot_wrap3).2.1
          (example_vslot_run example_vslot_cfg3 example_vslot_wrap3).2.2 example_vslot_part)
        example_vslot_cfg3).2.1
        (fram_vslot_init example_K example_vslot0
        (vslot_tear_active (example_vslot_run example_vslot_cfg3 example_vslot_wrap3).2.1
          (example_vslot_run example_vslot_cfg3 example_vslot_wrap3).2.2 example_vslot_part)
        example_vslot_cfg3).2.2
        { payload := some [0], len := some 1 } =
      (ESP_OK, { payload := some [0x11], len := some 1 }, pm4)) := by
  have hi := example_vslot_init_ok example_vslot_cfg3 rfl rfl (by decide) (by decide)
    (by decide)
  have hrun := example_vslot_run_ok example_vslot_cfg3 rfl rfl (by decide) (by decide)
    (by decide) example_vslot_wrap3 example_vslot_wrap3_bounded
  obtain ⟨pm4, pmem3, hi4, h4, g, hsc, hsc3, hbd, hrecs⟩ := vslot_reinit_torn example_K
    example_vslot0 _ _ example_vslot0 example_pm _ _ example_vslot_part (fun _ => 0xFF)
    example_vslot_cfg3 example_vslot_wrap3 (by decide) (by decide) example_pm_vslot_ok hi.1
    (fun _ _ => rfl) hi.2 (by rw [example_vslot_wrap3_length]; decide) hrun
  rw [example_vslot_wrap3_length] at hi4
  have hget0 := example_vslot_wrap3_get 0
  have hget1 := example_vslot_wrap3_get 1
  have hrec := hrecs 4294967294 (by rw [example_vslot_wrap3_length]; decide)
    (by rw [example_vslot_wrap3_length]; decide)
  rw [hget0] at hrec
  have hR := example_vslot_wrap3_recovered
  have hRd : (vslot_recovered example_vslot_part example_vslot_cfg3
      (vslot_torn_view 4294967297 example_vslot_cfg3.slot_count)).has_data = true := by
    rw [hR]
  have hRv : (vslot_recovered example_vslot_part example_vslot_cfg3
      (vslot_torn_view 4294967297 example_vslot_cfg3.slot_count)).active_version
      = 4294967295 := by
    rw [hR]
    decide
  have hRa : (vslot_recovered example_vslot_part example_vslot_cfg3
      (vslot_torn_view 4294967297 example_vslot_cfg3.slot_count)).active_slot
      = 4294967294 % example_vslot_cfg3.slot_count := by
    rw [hR]
  have hRc : (vslot_recovered example_vslot_part example_vslot_cfg3
      (vslot_torn_view 4294967297 example_vslot_cfg3.slot_count)).slot_count
      = example_vslot_cfg3.slot_count := by
    rw [hR]; rfl
  have gR : VslotGeom (vslot_recovered example_vslot_part example_vslot_cfg3
      (vslot_torn_view 4294967297 example_vslot_cfg3.slot_count)) example_vslot_part := by
    rw [hR]
    exact ⟨g.part, g.slot_size, g.slot_count_pos, g.fits, g.magic, g.mutex⟩
  have hRrec : VSlotRec pmem3 (vslot_recovered example_vslot_part example_vslot_cfg3
      (vslot_torn_view 4294967297 example_vslot_cfg3.slot_count))
      (4294967294 % example_vslot_cfg3.slot_count)
      (vslot_header_for (vslot_recovered example_vslot_part example_vslot_cfg3
        (vslot_torn_view 4294967297 example_vslot_cfg3.slot_count)).magic
        ((4294967294 + 1) % U32) 0 [0x11]) [0x11] := by
    rw [hR]
    exact ⟨hrec.image, hrec.commit⟩
  have hRm : (vslot_recovered example_vslot_part example_vslot_cfg3
      (vslot_torn_view 4294967297 example_vslot_cfg3.slot_count)).max_payload = 16 := by
    rw [hR]; rfl
  generalize vslot_recovered example_vslot_part example_vslot_cfg3
    (vslot_torn_view 4294967297 example_vslot_cfg3.slot_count) = R
    at hi4 hRd hRv hRa hRc gR hRrec hRm
  rw [← hRa] at hRrec
  obtain ⟨pm5, hl5, _⟩ := vslot_load_rec R example_vslot_part pm4 pmem3 _ 0 [0x11] [0] 1 gR
    h4 hRd (by rw [hRa, hRc]; exact Nat.mod_lt _ (by decide)) (Nat.mod_lt _ (by decide))
    (by rw [hRm]; decide) (by decide) hRrec
  refine ⟨hi.2, hrun, example_vslot_wrap3_length, hget1, ?_, ?_, ?_⟩
  · rw [hi4]
  · rw [hi4, fram_vslot_get_version_eq]
    exact hRv
  · rw [hi4]
    exact ⟨pm5, hl5⟩

/-! ## Key/value store: headers -/

theorem kvs_head_bytes_length (h : fram_kvs_header_t) : h.head_bytes.length = 16 := by
  simp [fram_kvs_header_t.head_bytes, le_bytes_length]

theorem kvs_to_bytes_length (h : fram_kvs_header_t) : h.to_bytes.length = 20 := by
  simp [fram_kvs_header_t.to_bytes, kvs_head_bytes_length, le_bytes_length]

theorem kvs_of_bytes_to_bytes (h : fram_kvs_header_t)
    (h1 : h.magic < 4294967296) (h2 : h.seq < 4294967296)
    (h3 : h.key_len < 65536) (h4 : h.value_len < 65536) (h5 : h.flags < 256)
    (h6 : h.reserved < 16777216) (h7 : h.crc32 < 4294967296) :
    fram_kvs_header_of_bytes h.to_bytes = h := by
  have e1 : slice h.to_bytes 0 4 = le_bytes 4 h.magic := by
    have := slice_mid [] (le_bytes 4 h.magic) (le_bytes 4 h.seq ++ (le_bytes 2 h.key_len ++
      (le_bytes 2 h.value_len ++ (le_bytes 1 h.flags ++ (le_bytes 3 h.reserved ++
        le_bytes 4 h.crc32))))) 0 4 rfl (le_bytes_length _ _)
    simpa [fram_kvs_header_t.to_bytes, fram_kvs_header_t.head_bytes] using this
  have e2 : slice h.to_bytes 4 4 = le_bytes 4 h.seq := by
    have := slice_mid (le_bytes 4 h.magic) (le_bytes 4 h.seq) (le_bytes 2 h.key_len ++
      (le_bytes 2 h.value_len ++ (le_bytes 1 h.flags ++ (le_bytes 3 h.reserved ++
        le_bytes 4 h.crc32)))) 4 4 (le_bytes_length _ _) (le_bytes_length _ _)
    simpa [fram_kvs_header_t.to_bytes, fram_kvs_header_t.head_bytes] using this
  have e3 : slice h.to_bytes 8 2 = le_bytes 2 h.key_len := by
    have := slice_mid (le_bytes 4 h.magic ++ le_bytes 4 h.seq) (le_bytes 2 h.key_len)
      (le_bytes 2 h.value_len ++ (le_bytes 1 h.flags ++ (le_bytes 3 h.reserved ++
        le_bytes 4 h.crc32))) 8 2 (by simp [le_bytes_length]) (le_bytes_length _ _)
    simpa [fram_kvs_header_t.to_bytes, fram_kvs_header_t.head_bytes] using this
  have e4 : slice h.to_bytes 10 2 = le_bytes 2 h.value_len := by
    have := slice_mid (le_bytes 4 h.magic ++ le_bytes 4 h.seq ++ le_bytes 2 h.key_len)
      (le_bytes 2 h.value_len) (le_bytes 1 h.flags ++ (le_bytes 3 h.reserved ++
        le_bytes 4 h.crc32)) 10 2 (by simp [le_bytes_length]) (le_bytes_length _ _)
    simpa [fram_kvs_header_t.to_bytes, fram_kvs_header_t.head_bytes] using this
  have e5 : slice h.to_bytes 12 1 = le_bytes 1 h.flags := by
    have := slice_mid (le_bytes 4 h.magic ++ le_bytes 4 h.seq ++ le_bytes 2 h.key_len
      ++ le_bytes 2 h.value_len) (le_bytes 1 h.flags) (le_bytes 3 h.reserved ++
        le_bytes 4 h.crc32) 12 1 (by simp [le_bytes_length]) (le_bytes_length _ _)
    simpa [fram_kvs_header_t.to_bytes, fram_kvs_header_t.head_bytes] using this
  have e6 : slice h.to_bytes 13 3 = le_bytes 3 h.reserved := by
    have := slice_mid (le_bytes 4 h.magic ++ le_bytes 4 h.seq ++ le_bytes 2 h.key_len
      ++ le_bytes 2 h.value_len ++ le_bytes 1 h.flags) (le_bytes 3 h.reserved)
      (le_bytes 4 h.crc32) 13 3 (by simp [le_bytes_length]) (le_bytes_length _ _)
    simpa [fram_kvs_header_t.to_bytes, fram_kvs_header_t.head_bytes] using this
  have e7 : slice h.to_bytes 16 4 = le_bytes 4 h.crc32 := by
    have := slice_mid h.head_bytes (le_bytes 4 h.crc32) [] 16 4
      (kvs_head_bytes_length h) (le_bytes_length _ _)
    simpa [fram_kvs_header_t.to_bytes] using this
  unfold fram_kvs_header_of_bytes
  rw [e1, e2, e3, e4, e5, e6, e7]
  simp only [le_val_le_bytes_4 _ h1, le_val_le_bytes_4 _ h2, le_val_le_bytes_2 _ h3,
    le_val_le_bytes_2 _ h4, le_val_le_bytes_1 _ h5, le_val_le_bytes_of_lt 3 _ h6,
    le_val_le_bytes_4 _ h7]

theorem kvs_op_flags_lt (op : kvs_op) : op.flags < 256 := by
  cases op
  · show (0 : Nat) < 256
    decide
  · show (1 : Nat) < 256
    decide

theorem kvs_op_size_eq (op : kvs_op) : op.size = 20 + op.key.length + op.value.length + 1 := rfl

/-- The header written for a call, with its checksum field set aside. -/
theorem kvs_header_for_head (magic seq : Nat) (op : kvs_op) (c : Nat) :
    ({ kvs_header_for magic seq op with crc32 := c }).head_bytes
      = (kvs_header_for magic seq op).head_bytes := rfl

/-- The checksum in the header written for a call covers the header up to the
checksum field, the key and the value. -/
theorem kvs_header_for_crc (magic seq : Nat) (op : kvs_op) :
    (kvs_header_for magic seq op).crc32 =
      fram_crc32_le (fram_crc32_le (fram_crc32_le 0 (kvs_header_for magic seq op).head_bytes)
        op.key) op.value := rfl

/-- Parsing the stored header of a call gives the header back, whatever the
value in its checksum field. -/
theorem kvs_header_for_roundtrip (K : Kconfig) (magic seq : Nat) (op : kvs_op) (c : Nat)
    (hm : magic < U32) (hs : seq < U32) (hv : op.valid K) (hc : c < U32) :
    fram_kvs_header_of_bytes ({ kvs_header_for magic seq op with crc32 := c }).to_bytes
      = { kvs_header_for magic seq op with crc32 := c } := by
  obtain ⟨hk1, hk2, hv1, hv2⟩ := hv
  apply kvs_of_bytes_to_bytes
  · exact hm
  · exact hs
  · show op.key.length < 65536
    have : op.key.length ≤ 15 := hk2
    omega
  · show op.value.length < 65536
    have : op.value.length ≤ 65535 := hv1
    omega
  · exact kvs_op_flags_lt op
  · show (0 : Nat) < 16777216
    decide
  · exact hc

/-- The header written for a call is valid for the store that wrote it. -/
theorem kvs_header_for_valid (K : Kconfig) (kvs : fram_kvs_t) (seq : Nat) (op : kvs_op) (c : Nat)
    (hv : op.valid K) :
    fram_kvs_header_valid K kvs { kvs_header_for kvs.magic seq op with crc32 := c } = true := by
  obtain ⟨hk1, hk2, hv1, hv2⟩ := hv
  have a1 : ({ kvs_header_for kvs.magic seq op with crc32 := c } : fram_kvs_header_t).magic
      = kvs.magic := rfl
  have a2 : ({ kvs_header_for kvs.magic seq op with crc32 := c } : fram_kvs_header_t).key_len
      = op.key.length := rfl
  have a3 : ({ kvs_header_for kvs.magic seq op with crc32 := c } : fram_kvs_header_t).value_len
      = op.value.length := rfl
  unfold fram_kvs_header_valid
  rw [a1, a2, a3, if_neg (by simp), if_neg (by omega), if_neg (by omega)]

/-- An erased header is not valid: its key length reads `0xFFFF`. -/
theorem kvs_erased_header_invalid (K : Kconfig) (kvs : fram_kvs_t) (pmem : Nat → Nat) (off : Nat)
    (he : ∀ i, i < 20 → pmem (off + i) = 0xFF) :
    fram_kvs_header_valid K kvs (fram_kvs_header_of_bytes (mem_read pmem off 20)) = false := by
  have hm : mem_read pmem off 20 = List.replicate 20 0xFF := by
    apply List.ext_getElem
    · simp [mem_read_length]
    · intro i h1 h2
      simp only [mem_read, List.getElem_map, List.getElem_range, List.getElem_replicate]
      exact he i (by simpa [mem_read_length] using h1)
  have hk : (fram_kvs_header_of_bytes (mem_read pmem off 20)).key_len = 65535 := by
    rw [hm]
    decide
  unfold fram_kvs_header_valid
  rw [hk]
  split_ifs
  · rfl
  · rfl
  · exfalso
    rename_i h2 _
    exact h2 (Or.inr (by decide))
  · exfalso
    rename_i h2 _
    exact h2 (Or.inr (by decide))

/-! ## Key/value store: reading a record -/

theorem pm_size_lt (pm : fram_pm_t) (p : fram_partition_t) (pmem : Nat → Nat)
    (h : PmOK pm p pmem) : p.size < U32 := by
  obtain ⟨_, _, mem, size, hd, hfit, _⟩ := h
  have := hd.size_lt
  omega

/-- A region that holds a 20-byte header, a key, a value and a commit byte. -/
theorem kvs_image_parts (pmem : Nat → Nat) (off : Nat) (hb key value : List Nat) (c : Nat)
    (hhb : hb.length = 20)
    (h : mem_read pmem off (20 + key.length + value.length + 1)
      = hb ++ (key ++ (value ++ [c]))) :
    mem_read pmem off 20 = hb ∧ mem_read pmem (off + 20) key.length = key ∧
    mem_read pmem (off + 20 + key.length) value.length = value ∧
    pmem (off + 20 + key.length + value.length) = c := by
  have e : 20 + key.length + value.length + 1 = 20 + (key.length + (value.length + 1)) := by
    omega
  rw [e, mem_read_add, mem_read_add, mem_read_add] at h
  obtain ⟨h1, h2⟩ := List.append_inj h (by rw [mem_read_length, hhb])
  obtain ⟨h3, h4⟩ := List.append_inj h2 (by rw [mem_read_length])
  obtain ⟨h5, h6⟩ := List.append_inj h4 (by rw [mem_read_length])
  refine ⟨h1, h3, ?_, ?_⟩
  · rw [Nat.add_assoc] at h5 ⊢
    exact h5
  · rw [mem_read_one] at h6
    have h7 := List.head_eq_of_cons_eq h6
    rw [← h7]

/-- The value loop of `fram_kvs_compute_crc` folds the CRC over the value
bytes stored on the media. -/
theorem kvs_crc_loop_ok (kvs : fram_kvs_t) (p : fram_partition_t) (pmem : Nat → Nat)
    (hp : kvs.part = some p) :
    ∀ (fuel rem voff crc : Nat) (pm : fram_pm_t), rem ≤ fuel → voff + rem ≤ p.size →
      crc < U32 → PmOK pm p pmem →
      ∃ pm1, fram_kvs_crc_loop kvs fuel pm voff rem crc
          = (ESP_OK, fram_crc32_le crc (mem_read pmem voff rem), pm1) ∧ PmOK pm1 p pmem := by
  intro fuel
  induction fuel with
  | zero =>
    intro rem voff crc pm hf hr hc h
    have : rem = 0 := by omega
    subst this
    refine ⟨pm, ?_, h⟩
    rw [mem_read_zero, fram_crc32_le_nil _ hc]
    rfl
  | succ n ih =>
    intro rem voff crc pm hf hr hc h
    have hsz := pm_size_lt pm p pmem h
    rw [U32_eq] at hsz
    by_cases h0 : rem > 0
    · obtain ⟨chunk, hchunk⟩ : ∃ chunk, chunk =
          (if rem > FRAM_KVS_CRC_CHUNK then FRAM_KVS_CRC_CHUNK else rem) := ⟨_, rfl⟩
      have hc1 : 0 < chunk ∧ chunk ≤ rem := by
        rw [hchunk]
        have : FRAM_KVS_CRC_CHUNK = 64 := rfl
        split_ifs <;> omega
      obtain ⟨pm1, h1, hok1⟩ := fram_pm_read_ok pm p pmem voff chunk h hc1.1 (by omega)
      obtain ⟨pm2, h2, hok2⟩ := ih (rem - chunk) (voff + chunk)
        (fram_crc32_le crc (mem_read pmem voff chunk)) pm1 (by omega) (by omega)
        (fram_crc32_le_lt _ _) hok1
      refine ⟨pm2, ?_, hok2⟩
      have hmod : (voff + chunk) % U32 = voff + chunk :=
        Nat.mod_eq_of_lt (by rw [U32_eq]; omega)
      have hsplit : mem_read pmem voff rem
          = mem_read pmem voff chunk ++ mem_read pmem (voff + chunk) (rem - chunk) := by
        rw [← mem_read_add]
        congr 1
        omega
      rw [fram_kvs_crc_loop, if_pos h0]
      simp only [← hchunk, hp, h1, ne_eq, not_true_eq_false, if_false, hmod]
      rw [h2, hsplit, fram_crc32_le_append]
    · have : rem = 0 := by omega
      subst this
      refine ⟨pm, ?_, h⟩
      rw [fram_kvs_crc_loop, if_neg h0, mem_read_zero, fram_crc32_le_nil _ hc]

/-- The function `fram_kvs_compute_crc` on a stored record: it folds the CRC
over header, key and value and compares it with the header's field; the key
is left at the start of `key_buf`. -/
theorem kvs_compute_crc_ok (kvs : fram_kvs_t) (p : fram_partition_t) (pmem : Nat → Nat)
    (pm : fram_pm_t) (off : Nat) (hdr : fram_kvs_header_t) (key value key_buf : List Nat)
    (hp : kvs.part = some p) (h : PmOK pm p pmem)
    (hkl : hdr.key_len = key.length) (hvl : hdr.value_len = value.length)
    (hk1 : 1 ≤ key.length)
    (hfit : off + 20 + key.length + value.length + 1 ≤ p.size)
    (hkey : mem_read pmem (off + 20) key.length = key)
    (hval : mem_read pmem (off + 20 + key.length) value.length = value) :
    ∃ pm1, fram_kvs_compute_crc kvs pm off hdr key_buf
        = (if fram_crc32_le (fram_crc32_le (fram_crc32_le 0 hdr.head_bytes) key) value
              = hdr.crc32 then ESP_OK else ESP_ERR_INVALID_CRC,
            key ++ key_buf.drop key.length, pm1) ∧ PmOK pm1 p pmem := by
  have hsz := pm_size_lt pm p pmem h
  rw [U32_eq] at hsz
  obtain ⟨pm1, h1, hok1⟩ := fram_pm_read_ok pm p pmem (off + 20) key.length h (by omega)
    (by omega)
  obtain ⟨pm2, h2, hok2⟩ := kvs_crc_loop_ok kvs p pmem hp value.length value.length
    (off + 20 + key.length) (fram_crc32_le (fram_crc32_le 0 hdr.head_bytes) key) pm1
    (Nat.le_refl _) (by omega) (fram_crc32_le_lt _ _) hok1
  refine ⟨pm2, ?_, hok2⟩
  have hm1 : (off + KVS_HEADER_SIZE) % U32 = off + 20 :=
    Nat.mod_eq_of_lt (by rw [U32_eq]; show off + 20 < 4294967296; omega)
  have hm2 : (off + KVS_HEADER_SIZE + key.length) % U32 = off + 20 + key.length :=
    Nat.mod_eq_of_lt (by rw [U32_eq]; show off + 20 + key.length < 4294967296; omega)
  have hpos : key.length > 0 := by omega
  have htake : (key ++ key_buf.drop key.length).take key.length = key := by
    rw [List.take_append_of_le_length (Nat.le_refl _), List.take_length]
  unfold fram_kvs_compute_crc
  simp only [hkl, hvl, hpos, if_true, hp, hm1, hm2, h1, hkey, ne_eq, not_true_eq_false, if_false,
    htake, h2, hval]
  by_cases hc : fram_crc32_le (fram_crc32_le (fram_crc32_le 0 hdr.head_bytes) key) value
      = hdr.crc32
  · rw [if_neg (by simpa using hc), if_pos hc]
  · rw [if_pos (by simpa using hc), if_neg hc]

/-! ## Key/value store: one iteration of the scan -/

/-- The comparison of the scan (`hdr.key_len == key_len_in` and `memcmp`)
holds exactly for the records of the key. -/
theorem kvs_key_match (k key rest : List Nat) :
    (k.length = key.length ∧ (k ++ rest).take key.length = key) ↔ k = key := by
  constructor
  · rintro ⟨h1, h2⟩
    rw [← h1, List.take_append_of_le_length (Nat.le_refl _), List.take_length] at h2
    exact h2
  · intro h
    subst h
    exact ⟨rfl, by rw [List.take_append_of_le_length (Nat.le_refl _), List.take_length]⟩

/-- One iteration of the loop of `fram_kvs_scan` at a committed record whose
checksum field holds `c`: the record is accepted and the scan goes on behind
it when `c` is the checksum of the record, and the loop is left otherwise. -/
theorem kvs_scan_step (K : Kconfig) (kvs : fram_kvs_t) (p : fram_partition_t)
    (pmem : Nat → Nat) (pm : fram_pm_t) (key : List Nat) (fuel off seq c : Nat) (op : kvs_op)
    (st : kvs_scan_t) (key_buf : List Nat)
    (hp : kvs.part = some p) (hm : kvs.magic < U32) (h : PmOK pm p pmem)
    (hs : seq < U32) (hc : c < U32) (hv : op.valid K) (hfit : off + op.size ≤ p.size)
    (himg : mem_read pmem off op.size
      = ({ kvs_header_for kvs.magic seq op with crc32 := c } : fram_kvs_header_t).to_bytes
          ++ (op.key ++ (op.value ++ [FRAM_KVS_COMMIT]))) :
    ∃ pm1, PmOK pm1 p pmem ∧
      fram_kvs_scan_loop K kvs p key (fuel + 1) pm off st key_buf =
        if c = (kvs_header_for kvs.magic seq op).crc32 then
          fram_kvs_scan_loop K kvs p key fuel pm1 (off + op.size)
            (kvs_scan_next key st off { kvs_header_for kvs.magic seq op with crc32 := c } op)
            (op.key ++ key_buf.drop op.key.length)
        else (ESP_OK, st, pm1) := by
  have hsz := pm_size_lt pm p pmem h
  rw [U32_eq] at hsz
  have hsize := kvs_op_size_eq op
  obtain ⟨hk1, hk2, hv1, hv2⟩ := hv
  have hk2b : op.key.length ≤ 15 := hk2
  obtain ⟨hdr, hhdr⟩ : ∃ hdr : fram_kvs_header_t,
      hdr = { kvs_header_for kvs.magic seq op with crc32 := c } := ⟨_, rfl⟩
  rw [← hhdr] at himg ⊢
  have hkl : hdr.key_len = op.key.length := by rw [hhdr]; rfl
  have hvl : hdr.value_len = op.value.length := by rw [hhdr]; rfl
  have hfl : hdr.flags = op.flags := by rw [hhdr]; rfl
  have hcr : hdr.crc32 = c := by rw [hhdr]
  have hhead : hdr.head_bytes = (kvs_header_for kvs.magic seq op).head_bytes := by rw [hhdr]; rfl
  have hvalid : fram_kvs_header_valid K kvs hdr = true := by
    rw [hhdr]
    exact kvs_header_for_valid K kvs seq op c ⟨hk1, hk2, hv1, hv2⟩
  have hround : fram_kvs_header_of_bytes hdr.to_bytes = hdr := by
    rw [hhdr]
    exact kvs_header_for_roundtrip K kvs.magic seq op c hm hs ⟨hk1, hk2, hv1, hv2⟩ hc
  rw [hsize] at himg
  obtain ⟨i1, i2, i3, i4⟩ := kvs_image_parts pmem off hdr.to_bytes op.key op.value
    FRAM_KVS_COMMIT (kvs_to_bytes_length hdr) himg
  obtain ⟨pm1, h1, hok1⟩ := fram_pm_read_ok pm p pmem off 20 h (by decide) (by omega)
  obtain ⟨pm2, h2, hok2⟩ := fram_pm_read_ok pm1 p pmem
    (off + 20 + op.key.length + op.value.length) 1 hok1 (by decide) (by omega)
  obtain ⟨pm3, h3, hok3⟩ := kvs_compute_crc_ok kvs p pmem pm2 off hdr op.key op.value key_buf
    hp hok2 hkl hvl hk1 (by omega) i2 i3
  refine ⟨pm3, hok3, ?_⟩
  have c1 : (off + KVS_HEADER_SIZE + 1) % U32 ≤ p.size := by
    rw [Nat.mod_eq_of_lt (by rw [U32_eq]; show off + 20 + 1 < 4294967296; omega)]
    show off + 20 + 1 ≤ p.size
    omega
  have c2 : fram_kvs_read_header kvs pm off = (ESP_OK, hdr, pm1) := by
    unfold fram_kvs_read_header
    rw [hp]
    show ((fram_pm_read pm (some p) off 20).1,
      fram_kvs_header_of_bytes (fram_pm_read pm (some p) off 20).2.1,
      (fram_pm_read pm (some p) off 20).2.2) = _
    rw [h1, i1, hround]
  have c3 : fram_kvs_record_size hdr = op.size := by
    unfold fram_kvs_record_size
    rw [hkl, hvl, hsize]
    exact Nat.mod_eq_of_lt (by rw [U32_eq]; show 20 + _ + _ + 1 < 4294967296; omega)
  have c4 : ¬ (off > p.size ∨ op.size > p.size ∨ (off + op.size) % U32 > p.size) := by
    rw [Nat.mod_eq_of_lt (by rw [U32_eq]; omega)]
    omega
  have c5 : fram_kvs_read_commit kvs pm1 off op.key.length op.value.length
      = (ESP_OK, FRAM_KVS_COMMIT, pm2) := by
    unfold fram_kvs_read_commit fram_kvs_commit_offset
    rw [hp, Nat.mod_eq_of_lt (by rw [U32_eq]; show off + 20 + _ + _ < 4294967296; omega)]
    show ((fram_pm_read pm1 (some p) (off + 20 + op.key.length + op.value.length) 1).1,
      (fram_pm_read pm1 (some p) (off + 20 + op.key.length + op.value.length) 1).2.1.headD 0,
      (fram_pm_read pm1 (some p) (off + 20 + op.key.length + op.value.length) 1).2.2) = _
    rw [h2, mem_read_one, i4]
    rfl
  have c6 : (off + op.size) % U32 = off + op.size :=
    Nat.mod_eq_of_lt (by rw [U32_eq]; omega)
  rw [fram_kvs_scan_loop, if_pos c1]
  simp only [c2, ne_eq, not_true_eq_false, if_false, hvalid, Bool.not_true, Bool.false_eq_true,
    c3, c4, hkl, hvl, c5, h3, hhead, hcr, c6]
  rw [← kvs_header_for_crc]
  have c4b : ¬ (off > p.size ∨ op.size > p.size ∨ off + op.size > p.size) := by omega
  rw [if_neg c4b]
  have hnext : (if op.key.length = key.length ∧
        List.take key.length (op.key ++ List.drop op.key.length key_buf) = key then
      ({ found := true, deleted := decide ¬hdr.flags &&& FRAM_KVS_FLAG_DELETED = 0,
         last_hdr := hdr, last_offset := off } : kvs_scan_t)
      else st) = kvs_scan_next key st off hdr op := by
    unfold kvs_scan_next
    rw [hfl]
    by_cases hk : op.key = key
    · rw [if_pos hk, if_pos ((kvs_key_match _ _ _).2 hk)]
    · rw [if_neg hk, if_neg (fun e => hk ((kvs_key_match _ _ _).1 e))]
  rw [hnext]
  by_cases hcc : (kvs_header_for kvs.magic seq op).crc32 = c
  · rw [if_pos hcc, if_pos hcc.symm, if_neg (by decide), if_neg (by simp)]
  · rw [if_neg hcc, if_pos rfl, if_neg (fun e => hcc e.symm)]

/-! ## Key/value store: the scan over a log -/

theorem kvs_log_size_cons (op : kvs_op) (rest : List kvs_op) :
    kvs_log_size (op :: rest) = op.size + kvs_log_size rest := by
  simp [kvs_log_size]

theorem kvs_log_size_nil : kvs_log_size [] = 0 := rfl

theorem kvs_log_size_append (a b : List kvs_op) :
    kvs_log_size (a ++ b) = kvs_log_size a + kvs_log_size b := by
  simp [kvs_log_size]

/-- Every record takes at least one byte, so a log has at most as many records
as bytes. -/
theorem kvs_log_size_ge_length (ops : List kvs_op) : ops.length ≤ kvs_log_size ops := by
  induction ops with
  | nil => exact Nat.le_refl _
  | cons op rest ih =>
    rw [kvs_log_size_cons, List.length_cons, kvs_op_size_eq]
    omega

/-- The scan state after an accepted record says what the map says after the
call that wrote it. -/
theorem kvs_scan_next_sees (p : fram_partition_t) (pmem : Nat → Nat)
    (key : List Nat) (st : kvs_scan_t) (acc : Option (List Nat)) (off magic seq : Nat)
    (op : kvs_op) (hrec : KRec pmem off magic seq op) (hfit : off + op.size ≤ p.size)
    (hsees : ScanSees p pmem key st acc) :
    ScanSees p pmem key (kvs_scan_next key st off (kvs_header_for magic seq op) op)
      (kvs_map_step key acc op) := by
  unfold kvs_scan_next kvs_map_step
  by_cases hk : op.key = key
  · rw [if_pos hk, if_pos hk]
    cases op with
    | set k v =>
      have hk2 : k = key := hk
      subst hk2
      unfold KRec at hrec
      rw [kvs_op_size_eq] at hrec hfit
      obtain ⟨i1, i2, i3, i4⟩ := kvs_image_parts pmem off _ k v FRAM_KVS_COMMIT
        (kvs_to_bytes_length _) hrec
      refine ⟨rfl, ?_, rfl, rfl, i3, ?_⟩
      · simp [kvs_op.flags]
      · show off + 20 + k.length + v.length < p.size
        have e1 : (kvs_op.set k v).key.length = k.length := rfl
        have e2 : (kvs_op.set k v).value.length = v.length := rfl
        omega
    | del k =>
      refine Or.inr ?_
      simp [kvs_op.flags, FRAM_KVS_FLAG_DELETED]
  · rw [if_neg hk, if_neg hk]
    exact hsees

/-- The loop of `fram_kvs_scan` over a log of committed records that ends in a
stop: it returns, and its state says about the key what the map says after the
calls that wrote the records. -/
theorem kvs_scan_run (K : Kconfig) (kvs : fram_kvs_t) (p : fram_partition_t)
    (pmem : Nat → Nat) (key : List Nat) (hp : kvs.part = some p) (hm : kvs.magic < U32) :
    ∀ (rest : List kvs_op) (off fuel : Nat) (pm : fram_pm_t) (st : kvs_scan_t)
      (key_buf : List Nat) (acc : Option (List Nat)),
      PmOK pm p pmem → KLog pmem kvs.magic off rest → (∀ op, op ∈ rest → op.valid K) →
      off + kvs_log_size rest ≤ p.size → KStop K kvs p pmem (off + kvs_log_size rest) →
      rest.length < fuel → ScanSees p pmem key st acc →
      ∃ st1 pm1, fram_kvs_scan_loop K kvs p key fuel pm off st key_buf = (ESP_OK, st1, pm1)
        ∧ PmOK pm1 p pmem ∧ ScanSees p pmem key st1 (rest.foldl (kvs_map_step key) acc) := by
  intro rest
  induction rest with
  | nil =>
    intro off fuel pm st key_buf acc h _ _ _ hstop hfuel hsees
    obtain ⟨f, hf⟩ : ∃ f, fuel = f + 1 := ⟨fuel - 1, by simp at hfuel; omega⟩
    subst hf
    rw [kvs_log_size_nil, Nat.add_zero] at hstop
    obtain ⟨pm1, h1, hok1⟩ := hstop key f pm st key_buf h
    exact ⟨st, pm1, h1, hok1, hsees⟩
  | cons op rest ih =>
    intro off fuel pm st key_buf acc h hlog hvalid hfit hstop hfuel hsees
    obtain ⟨f, hf⟩ : ∃ f, fuel = f + 1 := ⟨fuel - 1, by simp at hfuel; omega⟩
    subst hf
    obtain ⟨⟨seq, hseq, hrec⟩, hlog2⟩ := hlog
    rw [kvs_log_size_cons] at hfit hstop
    have hv := hvalid op (List.mem_cons_self _ _)
    obtain ⟨pm1, hok1, h1⟩ := kvs_scan_step K kvs p pmem pm key f off seq
      (kvs_header_for kvs.magic seq op).crc32 op st key_buf hp hm h hseq
      (by rw [kvs_header_for_crc]; exact fram_crc32_le_lt _ _) hv (by omega) hrec
    rw [if_pos rfl] at h1
    have hsees2 := kvs_scan_next_sees p pmem key st acc off kvs.magic seq op hrec (by omega)
      hsees
    obtain ⟨st2, pm2, h2, hok2, hs2⟩ := ih (off + op.size) f pm1
      (kvs_scan_next key st off (kvs_header_for kvs.magic seq op) op)
      (op.key ++ key_buf.drop op.key.length) (kvs_map_step key acc op) hok1 hlog2
      (fun o ho => hvalid o (List.mem_cons_of_mem _ ho)) (by omega)
      (by rw [Nat.add_assoc]; exact hstop)
      (by simp at hfuel; omega) hsees2
    refine ⟨st2, pm2, ?_, hok2, ?_⟩
    · rw [h1]
      exact h2
    · exact hs2

/-- The loop of `fram_kvs_scan` over a log of committed records: after one
iteration per record it stands behind the log, with a state that says about
the key what the map says after the calls that wrote the records. -/
theorem kvs_scan_prefix (K : Kconfig) (kvs : fram_kvs_t) (p : fram_partition_t)
    (pmem : Nat → Nat) (key : List Nat) (hp : kvs.part = some p) (hm : kvs.magic < U32) :
    ∀ (rest : List kvs_op) (off fuel : Nat) (pm : fram_pm_t) (st : kvs_scan_t)
      (key_buf : List Nat) (acc : Option (List Nat)),
      PmOK pm p pmem → KLog pmem kvs.magic off rest → (∀ op, op ∈ rest → op.valid K) →
      off + kvs_log_size rest ≤ p.size → ScanSees p pmem key st acc →
      ∃ st1 pm1 key_buf1, PmOK pm1 p pmem ∧
        ScanSees p pmem key st1 (rest.foldl (kvs_map_step key) acc) ∧
        fram_kvs_scan_loop K kvs p key (rest.length + fuel) pm off st key_buf
          = fram_kvs_scan_loop K kvs p key fuel pm1 (off + kvs_log_size rest) st1 key_buf1 := by
  intro rest
  induction rest with
  | nil =>
    intro off fuel pm st key_buf acc h _ _ _ hsees
    refine ⟨st, pm, key_buf, h, hsees, ?_⟩
    rw [kvs_log_size_nil, Nat.add_zero, List.length_nil, Nat.zero_add]
  | cons op rest ih =>
    intro off fuel pm st key_buf acc h hlog hvalid hfit hsees
    obtain ⟨⟨seq, hseq, hrec⟩, hlog2⟩ := hlog
    rw [kvs_log_size_cons] at hfit
    have hv := hvalid op (List.mem_cons_self _ _)
    obtain ⟨pm1, hok1, h1⟩ := kvs_scan_step K kvs p pmem pm key (rest.length + fuel) off seq
      (kvs_header_for kvs.magic seq op).crc32 op st key_buf hp hm h hseq
      (by rw [kvs_header_for_crc]; exact fram_crc32_le_lt _ _) hv (by omega) hrec
    rw [if_pos rfl] at h1
    have hsees2 := kvs_scan_next_sees p pmem key st acc off kvs.magic seq op hrec (by omega)
      hsees
    obtain ⟨st2, pm2, kb2, hok2, hs2, h2⟩ := ih (off + op.size) fuel pm1
      (kvs_scan_next key st off (kvs_header_for kvs.magic seq op) op)
      (op.key ++ key_buf.drop op.key.length) (kvs_map_step key acc op) hok1 hlog2
      (fun o ho => hvalid o (List.mem_cons_of_mem _ ho)) (by omega) hsees2
    refine ⟨st2, pm2, kb2, hok2, hs2, ?_⟩
    have e : (op :: rest).length + fuel = (rest.length + fuel) + 1 := by
      rw [List.length_cons]
      omega
    rw [e, h1, h2, kvs_log_size_cons, Nat.add_assoc]

/-! ## Key/value store: the end of the log, and the readers -/

/-- The scan stops at an offset behind which the partition is erased, as long
as the loop condition does not wrap. -/
theorem kvs_stop_erased (K : Kconfig) (kvs : fram_kvs_t) (p : fram_partition_t)
    (pmem : Nat → Nat) (off : Nat) (hp : kvs.part = some p) (hoff : off + 21 < U32)
    (herased : ∀ j, off ≤ j → j < p.size → pmem j = 0xFF) :
    KStop K kvs p pmem off := by
  intro key fuel pm st key_buf h
  have hmod : (off + KVS_HEADER_SIZE + 1) % U32 = off + 21 := Nat.mod_eq_of_lt hoff
  by_cases hc : off + 21 ≤ p.size
  · obtain ⟨pm1, h1, hok1⟩ := fram_pm_read_ok pm p pmem off 20 h (by decide) (by omega)
    refine ⟨pm1, ?_, hok1⟩
    have hinv := kvs_erased_header_invalid K kvs pmem off
      (fun i hi => herased (off + i) (by omega) (by omega))
    have c2 : fram_kvs_read_header kvs pm off
        = (ESP_OK, fram_kvs_header_of_bytes (mem_read pmem off 20), pm1) := by
      unfold fram_kvs_read_header
      rw [hp]
      show ((fram_pm_read pm (some p) off 20).1,
        fram_kvs_header_of_bytes (fram_pm_read pm (some p) off 20).2.1,
        (fram_pm_read pm (some p) off 20).2.2) = _
      rw [h1]
    rw [fram_kvs_scan_loop, hmod, if_pos hc]
    simp only [c2, ne_eq, not_true_eq_false, if_false, hinv, Bool.not_false, if_true]
  · refine ⟨pm, ?_, h⟩
    rw [fram_kvs_scan_loop, hmod, if_neg hc]

/-- The scan stops at a committed record whose checksum field does not hold
the checksum of the record. -/
theorem kvs_stop_bad_crc (K : Kconfig) (kvs : fram_kvs_t) (p : fram_partition_t)
    (pmem : Nat → Nat) (off seq c : Nat) (op : kvs_op)
    (hp : kvs.part = some p) (hm : kvs.magic < U32)
    (hs : seq < U32) (hc : c < U32) (hv : op.valid K) (hfit : off + op.size ≤ p.size)
    (hne : c ≠ (kvs_header_for kvs.magic seq op).crc32)
    (himg : mem_read pmem off op.size
      = ({ kvs_header_for kvs.magic seq op with crc32 := c } : fram_kvs_header_t).to_bytes
          ++ (op.key ++ (op.value ++ [FRAM_KVS_COMMIT]))) :
    KStop K kvs p pmem off := by
  intro key fuel pm st key_buf h
  obtain ⟨pm1, hok1, h1⟩ := kvs_scan_step K kvs p pmem pm key fuel off seq c op st key_buf
    hp hm h hs hc hv hfit himg
  rw [if_neg hne] at h1
  exact ⟨pm1, h1, hok1⟩

/-- The function `fram_kvs_scan`, from the result of its loop. -/
theorem kvs_scan_of_loop (K : Kconfig) (kvs : fram_kvs_t) (p : fram_partition_t)
    (pm pm1 : fram_pm_t) (key : List Nat) (st1 : kvs_scan_t) (hp : kvs.part = some p)
    (hloop : fram_kvs_scan_loop K kvs p key (p.size + 1) pm 0
      { found := false, deleted := false, last_hdr := kvs_header_zero, last_offset := 0 } []
        = (ESP_OK, st1, pm1)) :
    fram_kvs_scan K kvs pm key =
      if st1.found then
        (ESP_OK, { hdr := some st1.last_hdr, offset := some st1.last_offset,
                   deleted := st1.deleted }, pm1)
      else (ESP_ERR_NOT_FOUND, { hdr := none, offset := none, deleted := st1.deleted }, pm1) := by
  unfold fram_kvs_scan
  rw [hp]
  simp only [hloop, ne_eq, not_true_eq_false, if_false]

theorem kvs_lock_free (kvs : fram_kvs_t) (h : kvs.mutex = SemaphoreHandle_t.free) :
    fram_kvs_lock kvs = ESP_OK := by
  unfold fram_kvs_lock
  rw [h]
  rfl

/-- The function `fram_kvs_get` after a scan whose state sees `r` for the key:
not found when `r` is nothing, and the value with its length when `r` is a
value that fits the buffer. -/
theorem kvs_get_sees (K : Kconfig) (kvs : fram_kvs_t) (p : fram_partition_t)
    (pmem : Nat → Nat) (pm pm1 : fram_pm_t) (key buf : List Nat) (cap : Nat)
    (st1 : kvs_scan_t) (r : Option (List Nat))
    (hp : kvs.part = some p) (hmx : kvs.mutex = SemaphoreHandle_t.free)
    (hk1 : 1 ≤ key.length) (hk2 : key.length ≤ FRAM_KVS_KEY_MAX)
    (hloop : fram_kvs_scan_loop K kvs p key (p.size + 1) pm 0
      { found := false, deleted := false, last_hdr := kvs_header_zero, last_offset := 0 } []
        = (ESP_OK, st1, pm1))
    (hok1 : PmOK pm1 p pmem) (hsees : ScanSees p pmem key st1 r) :
    (r = none → (fram_kvs_get K kvs pm key buf cap).1 = ESP_ERR_NOT_FOUND) ∧
    (∀ v, r = some v → v.length ≤ cap →
      ∃ pm3, fram_kvs_get K kvs pm key buf cap = (ESP_OK, v ++ buf.drop v.length, v.length, pm3)
        ∧ PmOK pm3 p pmem) := by
  have hscan := kvs_scan_of_loop K kvs p pm pm1 key st1 hp hloop
  have hlock := kvs_lock_free kvs hmx
  have hguard : ¬ (key.length = 0 ∨ key.length > FRAM_KVS_KEY_MAX) := by omega
  have hsz := pm_size_lt pm1 p pmem hok1
  constructor
  · intro hr
    subst hr
    unfold fram_kvs_get
    rw [if_neg hguard, if_neg (by rw [hlock]; simp), hscan]
    by_cases hf : st1.found = true
    · have hd : st1.deleted = true := by
        rcases hsees with h1 | h1
        · rw [h1] at hf; cases hf
        · exact h1
      simp only [hf, if_true, hd]
    · simp only [hf, Bool.false_eq_true, if_false]
  · intro v hr hcap
    subst hr
    obtain ⟨s1, s2, s3, s4, s5, s6⟩ := hsees
    unfold fram_kvs_get
    rw [if_neg hguard, if_neg (by rw [hlock]; simp), hscan]
    simp only [s1, if_true, s2, Bool.false_eq_true, if_false, s3, s4]
    rw [if_neg (by omega)]
    by_cases hv0 : v.length > 0
    · have hmod : (st1.last_offset + KVS_HEADER_SIZE + key.length) % U32
          = st1.last_offset + KVS_HEADER_SIZE + key.length :=
        Nat.mod_eq_of_lt (by omega)
      obtain ⟨pm3, h3, hok3⟩ := fram_pm_read_ok pm1 p pmem
        (st1.last_offset + KVS_HEADER_SIZE + key.length) v.length hok1 hv0 (by omega)
      refine ⟨pm3, ?_, hok3⟩
      rw [if_pos hv0, hmod, hp, h3, s5]
      simp only [if_true]
    · have hnil : v = [] := List.eq_nil_of_length_eq_zero (by omega)
      subst hnil
      refine ⟨pm1, ?_, hok1⟩
      rw [if_neg hv0]
      simp
/-- The function `fram_kvs_get` when the scan returns an error: the error is
reported as `ESP_ERR_NOT_FOUND`. -/
theorem kvs_get_scan_err (K : Kconfig) (kvs : fram_kvs_t) (p : fram_partition_t)
    (pm pm1 : fram_pm_t) (key buf : List Nat) (cap : Nat) (st1 : kvs_scan_t) (err : esp_err_t)
    (hp : kvs.part = some p) (hmx : kvs.mutex = SemaphoreHandle_t.free)
    (hk1 : 1 ≤ key.length) (hk2 : key.length ≤ FRAM_KVS_KEY_MAX)
    (hloop : fram_kvs_scan_loop K kvs p key (p.size + 1) pm 0
      { found := false, deleted := false, last_hdr := kvs_header_zero, last_offset := 0 } []
        = (err, st1, pm1))
    (herr : err ≠ ESP_OK) :
    fram_kvs_scan K kvs pm key = (err, { hdr := none, offset := none, deleted := false }, pm1) ∧
    (fram_kvs_get K kvs pm key buf cap).1 = ESP_ERR_NOT_FOUND := by
  have hlock := kvs_lock_free kvs hmx
  have hguard : ¬ (key.length = 0 ∨ key.length > FRAM_KVS_KEY_MAX) := by omega
  have hscan : fram_kvs_scan K kvs pm key
      = (err, { hdr := none, offset := none, deleted := false }, pm1) := by
    unfold fram_kvs_scan
    rw [hp]
    simp only [hloop, ne_eq, herr, not_false_eq_true, if_true]
  refine ⟨hscan, ?_⟩
  unfold fram_kvs_get
  rw [if_neg hguard, if_neg (by rw [hlock]; simp), hscan]
  cases err <;> rfl

/-! ## Key/value store: writing a record -/

/-- The partition content after the five writes of a record at offset `w`:
the record is stored and every byte outside it is unchanged. -/
theorem kvs_record_media (pmem : Nat → Nat) (w : Nat) (hb key value : List Nat)
    (hhb : hb.length = 20) :
    mem_read (mem_write (mem_write (mem_write (mem_write (mem_write pmem
        (w + 20 + key.length + value.length) [0]) w hb) (w + 20) key)
        (w + 20 + key.length) value) (w + 20 + key.length + value.length) [165])
      w (20 + key.length + value.length + 1) = hb ++ (key ++ (value ++ [165])) ∧
    ∀ a, (a < w ∨ w + 20 + key.length + value.length + 1 ≤ a) →
      (mem_write (mem_write (mem_write (mem_write (mem_write pmem
        (w + 20 + key.length + value.length) [0]) w hb) (w + 20) key)
        (w + 20 + key.length) value) (w + 20 + key.length + value.length) [165]) a = pmem a := by
  constructor
  · have e : 20 + key.length + value.length + 1 = 20 + (key.length + (value.length + 1)) := by
      omega
    rw [e, mem_read_add, mem_read_add, mem_read_add]
    congr 1
    · rw [mem_read_write_disjoint _ _ _ _ _ (Or.inl (by omega)),
        mem_read_write_disjoint _ _ _ _ _ (Or.inl (by omega)),
        mem_read_write_disjoint _ _ _ _ _ (Or.inl (by omega)), ← hhb]
      exact mem_read_write_same _ _ _
    · congr 1
      · rw [mem_read_write_disjoint _ _ _ _ _ (Or.inl (by omega)),
          mem_read_write_disjoint _ _ _ _ _ (Or.inl (by omega))]
        exact mem_read_write_same _ _ _
      · congr 1
        · rw [mem_read_write_disjoint _ _ _ _ _ (Or.inl (by omega))]
          exact mem_read_write_same _ _ _
        · have := mem_read_write_same (mem_write (mem_write (mem_write (mem_write pmem
            (w + 20 + key.length + value.length) [0]) w hb) (w + 20) key)
            (w + 20 + key.length) value) (w + 20 + key.length + value.length) [165]
          rw [List.length_singleton] at this
          exact this
  · intro a ha
    rw [mem_write_outside _ _ _ _ (by simp only [List.length_singleton]; omega),
      mem_write_outside _ _ _ _ (by omega),
      mem_write_outside _ _ _ _ (by omega),
      mem_write_outside _ _ _ _ (by omega),
      mem_write_outside _ _ _ _ (by simp only [List.length_singleton]; omega)]

/-- The record writes of `fram_kvs_set` and `fram_kvs_delete` when the record
fits the partition behind `write_offset`: they succeed, the record is stored
at `write_offset` and every byte outside it is unchanged. -/
theorem kvs_write_record_ok (kvs : fram_kvs_t) (p : fram_partition_t) (pmem : Nat → Nat)
    (pm : fram_pm_t) (hdr : fram_kvs_header_t) (key value : List Nat)
    (hp : kvs.part = some p) (h : PmOK pm p pmem)
    (hkl : hdr.key_len = key.length) (hvl : hdr.value_len = value.length)
    (hk1 : 1 ≤ key.length)
    (hfit : kvs.write_offset + 20 + key.length + value.length + 1 ≤ p.size) :
    ∃ pm1 pmem1, fram_kvs_write_record kvs pm hdr key value = (ESP_OK, pm1) ∧
      PmOK pm1 p pmem1 ∧
      mem_read pmem1 kvs.write_offset (20 + key.length + value.length + 1)
        = hdr.to_bytes ++ (key ++ (value ++ [FRAM_KVS_COMMIT])) ∧
      ∀ a, (a < kvs.write_offset ∨ kvs.write_offset + 20 + key.length + value.length + 1 ≤ a) →
        pmem1 a = pmem a := by
  have hsz := pm_size_lt pm p pmem h
  rw [U32_eq] at hsz
  obtain ⟨w, hw⟩ : ∃ w, w = kvs.write_offset := ⟨_, rfl⟩
  rw [← hw] at hfit ⊢
  have hco : fram_kvs_commit_offset w hdr.key_len hdr.value_len
      = w + 20 + key.length + value.length := by
    unfold fram_kvs_commit_offset
    rw [hkl, hvl]
    exact Nat.mod_eq_of_lt (by rw [U32_eq]; show w + 20 + _ + _ < 4294967296; omega)
  have hm1 : (w + KVS_HEADER_SIZE) % U32 = w + 20 :=
    Nat.mod_eq_of_lt (by rw [U32_eq]; show w + 20 < 4294967296; omega)
  have hm2 : (w + KVS_HEADER_SIZE + key.length) % U32 = w + 20 + key.length :=
    Nat.mod_eq_of_lt (by rw [U32_eq]; show w + 20 + key.length < 4294967296; omega)
  have hbl := kvs_to_bytes_length hdr
  obtain ⟨pmA, hA, hokA⟩ := fram_pm_write_ok pm p pmem (w + 20 + key.length + value.length) [0]
    h (by decide) (by simp only [List.length_singleton]; omega)
  obtain ⟨pmB, hB, hokB⟩ := fram_pm_write_ok pmA p _ w hdr.to_bytes hokA (by omega) (by omega)
  obtain ⟨pmC, hC, hokC⟩ := fram_pm_write_ok pmB p _ (w + 20) key hokB (by omega) (by omega)
  obtain ⟨pmD, hD, hokD⟩ : ∃ pmD,
      (if True ∧ value.length > 0 then
        fram_pm_write pmC (some p) (w + 20 + key.length) value else (ESP_OK, pmC))
        = (ESP_OK, pmD) ∧
      PmOK pmD p (mem_write (mem_write (mem_write (mem_write pmem
        (w + 20 + key.length + value.length) [0]) w hdr.to_bytes) (w + 20) key)
        (w + 20 + key.length) value) := by
    by_cases hv0 : value.length > 0
    · obtain ⟨pmD, hD, hokD⟩ := fram_pm_write_ok pmC p _ (w + 20 + key.length) value hokC hv0
        (by omega)
      exact ⟨pmD, by rw [if_pos ⟨trivial, hv0⟩]; exact hD, hokD⟩
    · have hnil : value = [] := List.eq_nil_of_length_eq_zero (by omega)
      subst hnil
      refine ⟨pmC, by rw [if_neg (fun e => hv0 e.2)], ?_⟩
      rw [mem_write_nil]
      exact hokC
  obtain ⟨pmE, hE, hokE⟩ := fram_pm_write_ok pmD p _ (w + 20 + key.length + value.length)
    [FRAM_KVS_COMMIT] hokD (by decide) (by simp only [List.length_singleton]; omega)
  obtain ⟨m1, m2⟩ := kvs_record_media pmem w hdr.to_bytes key value hbl
  refine ⟨pmE, _, ?_, hokE, m1, m2⟩
  unfold fram_kvs_write_record fram_kvs_write_commit
  simp only [← hw, hco, hp, hA, ne_eq, not_true_eq_false, if_false, hB, if_true, hm1, hC, hm2,
    hD, hE]

/-! ## Key/value store: a record that does not fit is not written -/

/-- The record writes of `fram_kvs_set` and `fram_kvs_delete` when the record
does not fit the partition behind `write_offset`: one of the writes is
rejected, whatever the 32-bit sums of the offsets wrap to. -/
theorem kvs_write_record_fail (kvs : fram_kvs_t) (p : fram_partition_t) (pmem : Nat → Nat)
    (pm : fram_pm_t) (hdr : fram_kvs_header_t) (key value : List Nat)
    (hp : kvs.part = some p) (h : PmOK pm p pmem)
    (hkl : hdr.key_len = key.length) (hvl : hdr.value_len = value.length)
    (hk1 : 1 ≤ key.length) (hw : kvs.write_offset ≤ p.size)
    (hfit : ¬ kvs.write_offset + 20 + key.length + value.length + 1 ≤ p.size) :
    (fram_kvs_write_record kvs pm hdr key value).1 ≠ ESP_OK := by
  have hsz := pm_size_lt pm p pmem h
  rw [U32_eq] at hsz
  obtain ⟨w, hwd⟩ : ∃ w, w = kvs.write_offset := ⟨_, rfl⟩
  rw [← hwd] at hfit hw
  obtain ⟨c, hc⟩ : ∃ c, c = fram_kvs_commit_offset w hdr.key_len hdr.value_len := ⟨_, rfl⟩
  have hcdef : c = (w + 20 + key.length + value.length) % 4294967296 := by
    rw [hc, fram_kvs_commit_offset, hkl, hvl]
    rfl
  have hbl := kvs_to_bytes_length hdr
  by_cases hc1 : c + 1 ≤ p.size
  · obtain ⟨pmA, hA, hokA⟩ := fram_pm_write_ok pm p pmem c [0] h (by decide)
      (by simp only [List.length_singleton]; omega)
    have hwrap : 4294967296 ≤ w + 20 + key.length + value.length := by
      by_contra hlt
      rw [Nat.mod_eq_of_lt (by omega)] at hcdef
      omega
    by_cases hc2 : w + 20 ≤ p.size
    · obtain ⟨pmB, hB, hokB⟩ := fram_pm_write_ok pmA p _ w hdr.to_bytes hokA (by omega)
        (by omega)
      have hm1 : (w + KVS_HEADER_SIZE) % U32 = w + 20 :=
        Nat.mod_eq_of_lt (by rw [U32_eq]; show w + 20 < 4294967296; omega)
      by_cases hc3 : w + 20 + key.length ≤ p.size
      · obtain ⟨pmC, hC, hokC⟩ := fram_pm_write_ok pmB p _ (w + 20) key hokB (by omega)
          (by omega)
        have hm2 : (w + KVS_HEADER_SIZE + key.length) % U32 = w + 20 + key.length :=
          Nat.mod_eq_of_lt (by rw [U32_eq]; show w + 20 + key.length < 4294967296; omega)
        have hv0 : value.length > 0 := by omega
        have hD := fram_pm_write_bad pmC p _ (w + 20 + key.length) value hokC hv0 (by omega)
        unfold fram_kvs_write_record fram_kvs_write_commit
        simp only [← hwd, ← hc, hp, hA, ne_eq, not_true_eq_false, if_false, hB, if_true, hm1,
          hC, hm2, hv0, and_self, hD, reduceCtorEq, not_false_eq_true]
      · have hC := fram_pm_write_bad pmB p _ (w + 20) key hokB (by omega) (by omega)
        unfold fram_kvs_write_record fram_kvs_write_commit
        simp only [← hwd, ← hc, hp, hA, ne_eq, not_true_eq_false, if_false, hB, if_true, hm1,
          hC, reduceCtorEq, false_and, not_false_eq_true]
    · have hB := fram_pm_write_bad pmA p _ w hdr.to_bytes hokA (by omega) (by omega)
      unfold fram_kvs_write_record fram_kvs_write_commit
      simp only [← hwd, ← hc, hp, hA, ne_eq, not_true_eq_false, if_false, hB, reduceCtorEq,
        false_and, not_false_eq_true]
  · have hA := fram_pm_write_bad pm p pmem c [0] h (by decide)
      (by simp only [List.length_singleton]; omega)
    unfold fram_kvs_write_record fram_kvs_write_commit
    simp only [← hwd, ← hc, hp, hA, ne_eq, reduceCtorEq, not_false_eq_true, if_true]

/-! ## Key/value store: the log grows by one record -/

/-- A log only depends on the bytes of its records. -/
theorem klog_congr (pmem pmem1 : Nat → Nat) (magic : Nat) :
    ∀ (ops : List kvs_op) (off : Nat),
      (∀ a, off ≤ a → a < off + kvs_log_size ops → pmem1 a = pmem a) →
      KLog pmem magic off ops → KLog pmem1 magic off ops := by
  intro ops
  induction ops with
  | nil => intro off _ _; trivial
  | cons op rest ih =>
    intro off hsame hlog
    obtain ⟨⟨seq, hseq, hrec⟩, hrest⟩ := hlog
    rw [kvs_log_size_cons] at hsame
    refine ⟨⟨seq, hseq, ?_⟩, ih (off + op.size) (fun a h1 h2 => hsame a (by omega) (by omega))
      hrest⟩
    unfold KRec at hrec ⊢
    rw [← hrec]
    exact mem_read_congr _ _ _ _ (fun i hi => hsame (off + i) (by omega) (by omega))

/-- A log followed by a record is a log. -/
theorem klog_snoc (pmem : Nat → Nat) (magic : Nat) (op : kvs_op) :
    ∀ (ops : List kvs_op) (off : Nat), KLog pmem magic off ops →
      (∃ seq, seq < U32 ∧ KRec pmem (off + kvs_log_size ops) magic seq op) →
      KLog pmem magic off (ops ++ [op]) := by
  intro ops
  induction ops with
  | nil =>
    intro off _ hrec
    rw [kvs_log_size_nil, Nat.add_zero] at hrec
    exact ⟨hrec, trivial⟩
  | cons o rest ih =>
    intro off hlog hrec
    obtain ⟨h1, hrest⟩ := hlog
    rw [kvs_log_size_cons, ← Nat.add_assoc] at hrec
    exact ⟨h1, ih (off + o.size) hrest hrec⟩

/-- The store after one more successful call: the record of the call is
stored at the old `write_offset`, the bytes outside it are unchanged, and the
store has advanced behind it. -/
theorem kvs_after_snoc (K : Kconfig) (kvs : fram_kvs_t) (p : fram_partition_t)
    (pmem pmem1 : Nat → Nat) (ops : List kvs_op) (op : kvs_op)
    (ha : KvsAfter K kvs p pmem ops) (hv : op.valid K)
    (hfit : kvs.write_offset + op.size ≤ p.size) (hsz : p.size < U32)
    (hrec : KRec pmem1 kvs.write_offset kvs.magic kvs.next_seq op)
    (hframe : ∀ a, (a < kvs.write_offset ∨ kvs.write_offset + op.size ≤ a) → pmem1 a = pmem a) :
    KvsAfter K { kvs with write_offset := (kvs.write_offset + op.size % U32) % U32
                          next_seq := (kvs.next_seq + 1) % U32 } p pmem1 (ops ++ [op]) := by
  have hoff := ha.offset
  rw [U32_eq] at hsz
  have hmod : (kvs.write_offset + op.size % U32) % U32 = kvs.write_offset + op.size := by
    rw [U32_eq, Nat.mod_eq_of_lt (show op.size < 4294967296 by omega),
      Nat.mod_eq_of_lt (by omega)]
  have hsize : kvs_log_size (ops ++ [op]) = kvs.write_offset + op.size := by
    rw [kvs_log_size_append, kvs_log_size_cons, kvs_log_size_nil, hoff]
    omega
  refine ⟨ha.part, ha.magic_lt, ha.mutex, ?_, ?_, Nat.mod_lt _ (by decide), ?_, ?_, ?_⟩
  · show (kvs.write_offset + op.size % U32) % U32 = kvs_log_size (ops ++ [op])
    rw [hmod, hsize]
  · rw [hsize]
    exact hfit
  · show KLog pmem1 kvs.magic 0 (ops ++ [op])
    apply klog_snoc
    · exact klog_congr pmem pmem1 kvs.magic ops 0
        (fun a _ h2 => hframe a (Or.inl (by omega))) ha.log
    · refine ⟨kvs.next_seq, ha.seq_lt, ?_⟩
      rw [Nat.zero_add, ← hoff]
      exact hrec
  · intro o ho
    rcases List.mem_append.mp ho with h1 | h1
    · exact ha.valid o h1
    · rw [List.mem_singleton.mp h1]
      exact hv
  · intro j h1 h2
    rw [hsize] at h1
    rw [hframe j (Or.inr h1)]
    exact ha.erased j (by omega) h2

/-! ## Key/value store: `fram_kvs_set`, `fram_kvs_delete` and runs of calls -/

/-- The function `fram_kvs_set` behind its argument checks. -/
theorem kvs_set_eq (K : Kconfig) (kvs : fram_kvs_t) (pm : fram_pm_t) (p : fram_partition_t)
    (k v : List Nat) (hp : kvs.part = some p) (hmx : kvs.mutex = SemaphoreHandle_t.free)
    (hv : (kvs_op.set k v).valid K) :
    fram_kvs_set K kvs pm k v = kvs_commit_record kvs pm p (kvs_op.set k v) := by
  obtain ⟨hk1, hk2, hv1, hv2⟩ := hv
  have hk1b : 1 ≤ k.length := hk1
  have hk2b : k.length ≤ FRAM_KVS_KEY_MAX := hk2
  have hk2c : k.length ≤ 15 := hk2
  have hv1b : v.length ≤ UINT16_MAX := hv1
  have hv1c : v.length ≤ 65535 := hv1
  have hv2b : v.length ≤ K.FRAM_KVS_MAX_VALUE := hv2
  have hlock := kvs_lock_free kvs hmx
  have hhdr : fram_kvs_header_t.mk kvs.magic kvs.next_seq (k.length % 65536)
      (v.length % 65536) 0 0
      (if v.length > 0 then
        fram_crc32_le (fram_crc32_le (fram_crc32_le 0 (fram_kvs_header_t.head_bytes
          (fram_kvs_header_t.mk kvs.magic kvs.next_seq (k.length % 65536)
            (v.length % 65536) 0 0 0))) k) v
        else fram_crc32_le (fram_crc32_le 0 (fram_kvs_header_t.head_bytes
          (fram_kvs_header_t.mk kvs.magic kvs.next_seq (k.length % 65536)
            (v.length % 65536) 0 0 0))) k)
        = kvs_header_for kvs.magic kvs.next_seq (kvs_op.set k v) := by
    rw [Nat.mod_eq_of_lt (show k.length < 65536 by omega),
      Nat.mod_eq_of_lt (show v.length < 65536 by omega)]
    by_cases h0 : v.length > 0
    · rw [if_pos h0]
      rfl
    · have hnil : v = [] := List.eq_nil_of_length_eq_zero (by omega)
      subst hnil
      rw [if_neg h0]
      unfold kvs_header_for
      simp only [kvs_op.key, kvs_op.value, kvs_op.flags, List.length_nil]
      rw [fram_crc32_le_nil _ (fram_crc32_le_lt _ _)]
  have hgen : ∀ H : fram_kvs_header_t, H = kvs_header_for kvs.magic kvs.next_seq (kvs_op.set k v) →
      (if (kvs.write_offset + (KVS_HEADER_SIZE + k.length + v.length + 1) % U32) % U32 > p.size
        then (ESP_ERR_NO_MEM, kvs, pm)
        else if (fram_kvs_write_record kvs pm H k v).1 = ESP_OK then
          (ESP_OK, fram_kvs_t.mk (some p) kvs.magic
            ((kvs.write_offset + (KVS_HEADER_SIZE + k.length + v.length + 1) % U32) % U32)
            ((kvs.next_seq + 1) % U32) kvs.ready kvs.mutex,
            (fram_kvs_write_record kvs pm H k v).2)
        else ((fram_kvs_write_record kvs pm H k v).1, kvs, (fram_kvs_write_record kvs pm H k v).2))
      = kvs_commit_record kvs pm p (kvs_op.set k v) := by
    intro H hH
    subst hH
    rw [← hp]
    rfl
  unfold fram_kvs_set
  rw [if_neg (by omega), if_neg (by omega), if_neg (by omega), if_neg (by rw [hlock]; simp), hp]
  exact hgen _ hhdr

/-- The function `fram_kvs_delete` behind its argument checks. -/
theorem kvs_delete_eq (K : Kconfig) (kvs : fram_kvs_t) (pm : fram_pm_t) (p : fram_partition_t)
    (k : List Nat) (hp : kvs.part = some p) (hmx : kvs.mutex = SemaphoreHandle_t.free)
    (hv : (kvs_op.del k).valid K) :
    fram_kvs_delete kvs pm k = kvs_commit_record kvs pm p (kvs_op.del k) := by
  obtain ⟨hk1, hk2, hv1, hv2⟩ := hv
  have hk1b : 1 ≤ k.length := hk1
  have hk2b : k.length ≤ FRAM_KVS_KEY_MAX := hk2
  have hk2c : k.length ≤ 15 := hk2
  have hlock := kvs_lock_free kvs hmx
  have hhdr : fram_kvs_header_t.mk kvs.magic kvs.next_seq (k.length % 65536) 0
      FRAM_KVS_FLAG_DELETED 0
      (fram_crc32_le (fram_crc32_le 0 (fram_kvs_header_t.head_bytes
          (fram_kvs_header_t.mk kvs.magic kvs.next_seq (k.length % 65536) 0
            FRAM_KVS_FLAG_DELETED 0 0))) k)
        = kvs_header_for kvs.magic kvs.next_seq (kvs_op.del k) := by
    rw [Nat.mod_eq_of_lt (show k.length < 65536 by omega)]
    unfold kvs_header_for
    simp only [kvs_op.key, kvs_op.value, kvs_op.flags, List.length_nil]
    rw [fram_crc32_le_nil _ (fram_crc32_le_lt _ _)]
  have hgen : ∀ H : fram_kvs_header_t, H = kvs_header_for kvs.magic kvs.next_seq (kvs_op.del k) →
      (if (kvs.write_offset + (KVS_HEADER_SIZE + k.length + 0 + 1) % U32) % U32 > p.size
        then (ESP_ERR_NO_MEM, kvs, pm)
        else if (fram_kvs_write_record kvs pm H k []).1 = ESP_OK then
          (ESP_OK, fram_kvs_t.mk (some p) kvs.magic
            ((kvs.write_offset + (KVS_HEADER_SIZE + k.length + 0 + 1) % U32) % U32)
            ((kvs.next_seq + 1) % U32) kvs.ready kvs.mutex,
            (fram_kvs_write_record kvs pm H k []).2)
        else ((fram_kvs_write_record kvs pm H k []).1, kvs, (fram_kvs_write_record kvs pm H k []).2))
      = kvs_commit_record kvs pm p (kvs_op.del k) := by
    intro H hH
    subst hH
    rw [← hp]
    rfl
  unfold fram_kvs_delete
  rw [if_neg (by omega), if_neg (by rw [hlock]; simp), hp]
  exact hgen _ hhdr

/-- A call whose record fits the partition behind `write_offset` succeeds and
appends its record. -/
theorem kvs_commit_ok (K : Kconfig) (kvs : fram_kvs_t) (p : fram_partition_t)
    (pmem : Nat → Nat) (pm : fram_pm_t) (ops : List kvs_op) (op : kvs_op)
    (ha : KvsAfter K kvs p pmem ops) (h : PmOK pm p pmem) (hv : op.valid K)
    (hfit : kvs.write_offset + op.size ≤ p.size) :
    ∃ kvs1 pm1 pmem1, kvs_commit_record kvs pm p op = (ESP_OK, kvs1, pm1) ∧
      PmOK pm1 p pmem1 ∧ KvsAfter K kvs1 p pmem1 (ops ++ [op]) := by
  have hsz := pm_size_lt pm p pmem h
  have hsz2 := hsz
  rw [U32_eq] at hsz2
  have hsize := kvs_op_size_eq op
  obtain ⟨pm1, pmem1, h1, hok1, hrec, hframe⟩ := kvs_write_record_ok kvs p pmem pm
    (kvs_header_for kvs.magic kvs.next_seq op) op.key op.value ha.part h rfl rfl hv.1
    (by omega)
  have hmod : (kvs.write_offset + op.size % U32) % U32 = kvs.write_offset + op.size := by
    rw [U32_eq, Nat.mod_eq_of_lt (show op.size < 4294967296 by omega),
      Nat.mod_eq_of_lt (by omega)]
  refine ⟨_, pm1, pmem1, ?_, hok1, kvs_after_snoc K kvs p pmem pmem1 ops op ha hv hfit hsz ?_ ?_⟩
  · unfold kvs_commit_record
    rw [if_neg (by rw [hmod]; omega)]
    simp only [h1, if_true]
  · unfold KRec
    rw [hsize]
    exact hrec
  · intro a ha2
    exact hframe a (by omega)

/-- A call whose record does not fit the partition behind `write_offset` does
not return `ESP_OK`. -/
theorem kvs_commit_fail (K : Kconfig) (kvs : fram_kvs_t) (p : fram_partition_t)
    (pmem : Nat → Nat) (pm : fram_pm_t) (ops : List kvs_op) (op : kvs_op)
    (ha : KvsAfter K kvs p pmem ops) (h : PmOK pm p pmem) (hv : op.valid K)
    (hfit : ¬ kvs.write_offset + op.size ≤ p.size) :
    (kvs_commit_record kvs pm p op).1 ≠ ESP_OK := by
  have hsize := kvs_op_size_eq op
  have hw : kvs.write_offset ≤ p.size := by
    rw [ha.offset]
    exact ha.fits
  have hfail := kvs_write_record_fail kvs p pmem pm (kvs_header_for kvs.magic kvs.next_seq op)
    op.key op.value ha.part h rfl rfl hv.1 hw (by omega)
  unfold kvs_commit_record
  by_cases hc : (kvs.write_offset + op.size % U32) % U32 > p.size
  · rw [if_pos hc]
    simp
  · rw [if_neg hc]
    simp only [hfail, if_false, ne_eq, not_false_eq_true]

/-- A call with a key or a value that `fram_kvs_set` or `fram_kvs_delete`
rejects does not return `ESP_OK`. -/
theorem kvs_apply_invalid (K : Kconfig) (kvs : fram_kvs_t) (pm : fram_pm_t) (op : kvs_op)
    (hv : ¬ op.valid K) : (fram_kvs_apply K kvs pm op).1 ≠ ESP_OK := by
  cases op with
  | set k v =>
    have hv2 : ¬ (1 ≤ k.length ∧ k.length ≤ FRAM_KVS_KEY_MAX ∧ v.length ≤ UINT16_MAX ∧
        v.length ≤ K.FRAM_KVS_MAX_VALUE) := hv
    show (fram_kvs_set K kvs pm k v).1 ≠ ESP_OK
    unfold fram_kvs_set
    by_cases g1 : k.length = 0 ∨ k.length > FRAM_KVS_KEY_MAX
    · rw [if_pos g1]
      simp
    · rw [if_neg g1]
      by_cases g2 : v.length > UINT16_MAX
      · rw [if_pos g2]
        simp
      · rw [if_neg g2]
        by_cases g3 : v.length > K.FRAM_KVS_MAX_VALUE
        · rw [if_pos g3]
          simp
        · exfalso
          apply hv2
          omega
  | del k =>
    have hv2 : ¬ (1 ≤ k.length ∧ k.length ≤ FRAM_KVS_KEY_MAX ∧ 0 ≤ UINT16_MAX ∧
        0 ≤ K.FRAM_KVS_MAX_VALUE) := hv
    show (fram_kvs_delete kvs pm k).1 ≠ ESP_OK
    unfold fram_kvs_delete
    by_cases g1 : k.length = 0 ∨ k.length > FRAM_KVS_KEY_MAX
    · rw [if_pos g1]
      simp
    · exfalso
      apply hv2
      omega

/-- A call on the store is the common end of the two functions, once its
arguments are accepted. -/
theorem kvs_apply_eq (K : Kconfig) (kvs : fram_kvs_t) (pm : fram_pm_t) (p : fram_partition_t)
    (op : kvs_op) (hp : kvs.part = some p) (hmx : kvs.mutex = SemaphoreHandle_t.free)
    (hv : op.valid K) :
    fram_kvs_apply K kvs pm op = kvs_commit_record kvs pm p op := by
  cases op with
  | set k v => exact kvs_set_eq K kvs pm p k v hp hmx hv
  | del k => exact kvs_delete_eq K kvs pm p k hp hmx hv

/-- A successful call appends its record to the log. -/
theorem kvs_apply_inv (K : Kconfig) (kvs kvs1 : fram_kvs_t) (p : fram_partition_t)
    (pmem : Nat → Nat) (pm pm1 : fram_pm_t) (ops : List kvs_op) (op : kvs_op)
    (ha : KvsAfter K kvs p pmem ops) (h : PmOK pm p pmem)
    (hr : fram_kvs_apply K kvs pm op = (ESP_OK, kvs1, pm1)) :
    ∃ pmem1, PmOK pm1 p pmem1 ∧ KvsAfter K kvs1 p pmem1 (ops ++ [op]) := by
  have hv : op.valid K := by
    by_contra hn
    exact kvs_apply_invalid K kvs pm op hn (by rw [hr])
  rw [kvs_apply_eq K kvs pm p op ha.part ha.mutex hv] at hr
  by_cases hfit : kvs.write_offset + op.size ≤ p.size
  · obtain ⟨kvs2, pm2, pmem2, h2, hok2, ha2⟩ := kvs_commit_ok K kvs p pmem pm ops op ha h hv hfit
    rw [h2] at hr
    have e1 : kvs2 = kvs1 := (Prod.mk.inj (Prod.mk.inj hr).2).1
    have e2 : pm2 = pm1 := (Prod.mk.inj (Prod.mk.inj hr).2).2
    subst e1 e2
    exact ⟨pmem2, hok2, ha2⟩
  · exact absurd (by rw [hr]) (kvs_commit_fail K kvs p pmem pm ops op ha h hv hfit)

/-- A run of successful calls appends the records of its calls to the log. -/
theorem kvs_apply_all_inv (K : Kconfig) (p : fram_partition_t) :
    ∀ (ops ops0 : List kvs_op) (kvs kvs1 : fram_kvs_t) (pm pm1 : fram_pm_t) (pmem : Nat → Nat),
      KvsAfter K kvs p pmem ops0 → PmOK pm p pmem →
      fram_kvs_apply_all K kvs pm ops = (ESP_OK, kvs1, pm1) →
      ∃ pmem1, PmOK pm1 p pmem1 ∧ KvsAfter K kvs1 p pmem1 (ops0 ++ ops) := by
  intro ops
  induction ops with
  | nil =>
    intro ops0 kvs kvs1 pm pm1 pmem ha h hr
    have e1 : kvs = kvs1 := (Prod.mk.inj (Prod.mk.inj hr).2).1
    have e2 : pm = pm1 := (Prod.mk.inj (Prod.mk.inj hr).2).2
    subst e1 e2
    exact ⟨pmem, h, by rw [List.append_nil]; exact ha⟩
  | cons op rest ih =>
    intro ops0 kvs kvs1 pm pm1 pmem ha h hr
    rw [fram_kvs_apply_all] at hr
    by_cases hc : (fram_kvs_apply K kvs pm op).1 = ESP_OK
    · simp only [hc, ne_eq, not_true_eq_false, if_false] at hr
      obtain ⟨pmem2, hok2, ha2⟩ := kvs_apply_inv K kvs _ p pmem pm _ ops0 op ha h
        (triple_eta_ok _ hc)
      obtain ⟨pmem3, hok3, ha3⟩ := ih (ops0 ++ [op]) _ kvs1 _ pm1 pmem2 ha2 hok2 hr
      refine ⟨pmem3, hok3, ?_⟩
      rw [List.append_assoc] at ha3
      exact ha3
    · simp only [hc, ne_eq, not_false_eq_true, if_true] at hr
      exact absurd (by rw [hr]) hc

/-! ## Key/value store: `fram_kvs_init` on an erased partition -/

/-- The loop of `fram_kvs_find_end` stops at once on an erased partition. -/
theorem kvs_find_end_erased (K : Kconfig) (kvs : fram_kvs_t) (p : fram_partition_t)
    (pmem : Nat → Nat) (pm : fram_pm_t) (hp : kvs.part = some p) (h : PmOK pm p pmem)
    (herased : ∀ i, i < p.size → pmem i = 0xFF) :
    ∃ pm1, fram_kvs_find_end K kvs pm = (ESP_OK, some (0, 0), pm1) ∧ PmOK pm1 p pmem := by
  have hmod : (0 + KVS_HEADER_SIZE + 1) % U32 = 21 := by decide
  by_cases hc : 21 ≤ p.size
  · obtain ⟨pm1, h1, hok1⟩ := fram_pm_read_ok pm p pmem 0 20 h (by decide) (by omega)
    refine ⟨pm1, ?_, hok1⟩
    have hinv := kvs_erased_header_invalid K kvs pmem 0
      (fun i hi => herased (0 + i) (by omega))
    have c2 : fram_kvs_read_header kvs pm 0
        = (ESP_OK, fram_kvs_header_of_bytes (mem_read pmem 0 20), pm1) := by
      unfold fram_kvs_read_header
      rw [hp]
      show ((fram_pm_read pm (some p) 0 20).1,
        fram_kvs_header_of_bytes (fram_pm_read pm (some p) 0 20).2.1,
        (fram_pm_read pm (some p) 0 20).2.2) = _
      rw [h1]
    unfold fram_kvs_find_end
    rw [hp]
    simp only [fram_kvs_find_end_loop, hmod, if_pos hc, c2, ne_eq, not_true_eq_false, if_false,
      hinv, Bool.not_false, if_true]
  · refine ⟨pm, ?_, h⟩
    unfold fram_kvs_find_end
    rw [hp]
    simp only [fram_kvs_find_end_loop, hmod, if_neg hc, ne_eq, not_true_eq_false, if_false]

/-- The function `fram_kvs_init` on an erased partition: it succeeds with an
empty store. -/
theorem kvs_init_erased (K : Kconfig) (pm : fram_pm_t) (p : fram_partition_t)
    (pmem : Nat → Nat) (cfg : fram_kvs_config_t) (hmagic : cfg.magic < U32)
    (h : PmOK pm p pmem) (hfind : fram_pm_find pm cfg.partition_name = some p)
    (herased : ∀ i, i < p.size → pmem i = 0xFF) :
    ∃ kvs1 pm1, fram_kvs_init K pm cfg = (ESP_OK, kvs1, pm1) ∧ PmOK pm1 p pmem ∧
      KvsAfter K kvs1 p pmem [] := by
  obtain ⟨pm1, h1, hok1⟩ := kvs_find_end_erased K
    { part := some p, magic := cfg.magic, write_offset := 0, next_seq := 0, ready := false
      mutex := SemaphoreHandle_t.free } p pmem pm rfl h herased
  refine ⟨{ part := some p, magic := cfg.magic, write_offset := 0, next_seq := 0, ready := true
            mutex := SemaphoreHandle_t.free }, pm1, ?_, hok1, ?_⟩
  · unfold fram_kvs_init
    simp only [hfind, h1]
  · exact ⟨rfl, hmagic, rfl, rfl, Nat.zero_le _, (by decide : (0 : Nat) < U32), trivial,
      fun op ho => absurd ho (List.not_mem_nil _), fun j _ hj => herased j hj⟩

/-- The function `fram_kvs_get_len` after a scan whose state sees the value
`v` for the key. -/
theorem kvs_get_len_sees (K : Kconfig) (kvs : fram_kvs_t) (p : fram_partition_t)
    (pmem : Nat → Nat) (pm pm1 : fram_pm_t) (key : List Nat) (len : Nat)
    (st1 : kvs_scan_t) (v : List Nat)
    (hp : kvs.part = some p) (hmx : kvs.mutex = SemaphoreHandle_t.free)
    (hk1 : 1 ≤ key.length) (hk2 : key.length ≤ FRAM_KVS_KEY_MAX)
    (hloop : fram_kvs_scan_loop K kvs p key (p.size + 1) pm 0
      { found := false, deleted := false, last_hdr := kvs_header_zero, last_offset := 0 } []
        = (ESP_OK, st1, pm1))
    (hsees : ScanSees p pmem key st1 (some v)) :
    fram_kvs_get_len K kvs pm key len = (ESP_OK, v.length, pm1) := by
  have hscan := kvs_scan_of_loop K kvs p pm pm1 key st1 hp hloop
  have hlock := kvs_lock_free kvs hmx
  have hguard : ¬ (key.length = 0 ∨ key.length > FRAM_KVS_KEY_MAX) := by omega
  obtain ⟨s1, s2, s3, s4, s5, s6⟩ := hsees
  unfold fram_kvs_get_len
  rw [if_neg hguard, if_neg (by rw [hlock]; simp), hscan]
  simp only [s1, if_true, s2, Bool.false_eq_true, if_false, s4]

/-! ## Key/value store: the store as a map -/

/-- A run of acceptable calls whose records fit the partition succeeds. -/
theorem kvs_apply_all_ok (K : Kconfig) (p : fram_partition_t) :
    ∀ (ops ops0 : List kvs_op) (kvs : fram_kvs_t) (pm : fram_pm_t) (pmem : Nat → Nat),
      KvsAfter K kvs p pmem ops0 → PmOK pm p pmem → (∀ op, op ∈ ops → op.valid K) →
      kvs_log_size ops0 + kvs_log_size ops ≤ p.size →
      ∃ kvs1 pm1 pmem1, fram_kvs_apply_all K kvs pm ops = (ESP_OK, kvs1, pm1) ∧
        PmOK pm1 p pmem1 ∧ KvsAfter K kvs1 p pmem1 (ops0 ++ ops) := by
  intro ops
  induction ops with
  | nil =>
    intro ops0 kvs pm pmem ha h _ _
    exact ⟨kvs, pm, pmem, rfl, h, by rw [List.append_nil]; exact ha⟩
  | cons op rest ih =>
    intro ops0 kvs pm pmem ha h hvalid hfit
    rw [kvs_log_size_cons] at hfit
    have hv := hvalid op (List.mem_cons_self _ _)
    obtain ⟨kvs2, pm2, pmem2, h2, hok2, ha2⟩ := kvs_commit_ok K kvs p pmem pm ops0 op ha h hv
      (by rw [ha.offset]; omega)
    rw [← kvs_apply_eq K kvs pm p op ha.part ha.mutex hv] at h2
    obtain ⟨kvs3, pm3, pmem3, h3, hok3, ha3⟩ := ih (ops0 ++ [op]) kvs2 pm2 pmem2 ha2 hok2
      (fun o ho => hvalid o (List.mem_cons_of_mem _ ho))
      (by rw [kvs_log_size_append, kvs_log_size_cons, kvs_log_size_nil]; omega)
    refine ⟨kvs3, pm3, pmem3, ?_, hok3, by rw [List.append_assoc] at ha3; exact ha3⟩
    rw [fram_kvs_apply_all]
    simp only [h2, ne_eq, not_true_eq_false, if_false]
    exact h3

/-- The map of the specification, call by call. -/
theorem kvs_map_spec_snoc (ops : List kvs_op) (op : kvs_op) (k : List Nat) :
    kvs_map_spec (ops ++ [op]) k = kvs_map_step k (kvs_map_spec ops k) op := by
  unfold kvs_map_spec
  rw [List.foldl_append]
  rfl

/-- The function `fram_kvs_get` on a store after a run of successful calls,
when the scan stops at the end of the log: the value of the map of the
specification, or not found. -/
theorem kvs_get_of_after (K : Kconfig) (kvs : fram_kvs_t) (p : fram_partition_t)
    (pmem : Nat → Nat) (pm : fram_pm_t) (ops : List kvs_op) (k buf : List Nat) (cap : Nat)
    (ha : KvsAfter K kvs p pmem ops) (h : PmOK pm p pmem)
    (hstop : KStop K kvs p pmem (kvs_log_size ops))
    (hk1 : 1 ≤ k.length) (hk2 : k.length ≤ FRAM_KVS_KEY_MAX) :
    (kvs_map_spec ops k = none → (fram_kvs_get K kvs pm k buf cap).1 = ESP_ERR_NOT_FOUND) ∧
    (∀ v, kvs_map_spec ops k = some v → v.length ≤ cap →
      ∃ pm3, fram_kvs_get K kvs pm k buf cap = (ESP_OK, v ++ buf.drop v.length, v.length, pm3)
        ∧ PmOK pm3 p pmem) := by
  have hlen := kvs_log_size_ge_length ops
  have hfits := ha.fits
  obtain ⟨st1, pm1, hloop, hok1, hsees⟩ := kvs_scan_run K kvs p pmem k ha.part ha.magic_lt ops 0
    (p.size + 1) pm
    { found := false, deleted := false, last_hdr := kvs_header_zero, last_offset := 0 } [] none
    h ha.log ha.valid (by omega) (by rw [Nat.zero_add]; exact hstop) (by omega) (Or.inl rfl)
  exact kvs_get_sees K kvs p pmem pm pm1 k buf cap st1 _ ha.part ha.mutex hk1 hk2 hloop hok1 hsees

/-- C1 (amended): the store behaves as a map on a partition of at most
`2^32 - 22` bytes. Starting from `fram_kvs_init` on an erased partition, after
any run of `fram_kvs_set` and `fram_kvs_delete` calls that all return `ESP_OK`,
for every key `k` of 1 to 15 bytes, `fram_kvs_get(k)` with a buffer of `cap`
bytes returns `ESP_OK` with exactly the bytes and the length of the value of
the most recent `set` of `k` when the most recent call on `k` is a `set` (and
the value fits the buffer), and returns `ESP_ERR_NOT_FOUND` when `k` was never
set or the most recent call on `k` is a `delete`. -/
theorem kvs_behaves_as_map (K : Kconfig) (pm pm1 pm2 : fram_pm_t) (p : fram_partition_t)
    (pmem : Nat → Nat) (cfg : fram_kvs_config_t) (kvs1 kvs2 : fram_kvs_t)
    (ops : List kvs_op) (k buf : List Nat) (cap : Nat)
    (hmagic : cfg.magic < U32) (h : PmOK pm p pmem)
    (hfind : fram_pm_find pm cfg.partition_name = some p)
    (herased : ∀ i, i < p.size → pmem i = 0xFF)
    (hsize : p.size + 22 ≤ U32)
    (hinit : fram_kvs_init K pm cfg = (ESP_OK, kvs1, pm1))
    (hops : fram_kvs_apply_all K kvs1 pm1 ops = (ESP_OK, kvs2, pm2))
    (hk1 : 1 ≤ k.length) (hk2 : k.length ≤ FRAM_KVS_KEY_MAX) :
    (∀ v, kvs_map_spec ops k = some v → v.length ≤ cap →
      ∃ pm3, fram_kvs_get K kvs2 pm2 k buf cap
        = (ESP_OK, v ++ buf.drop v.length, v.length, pm3)) ∧
    (kvs_map_spec ops k = none → (fram_kvs_get K kvs2 pm2 k buf cap).1 = ESP_ERR_NOT_FOUND) := by
  obtain ⟨kvsI, pmI, hI, hokI, haI⟩ := kvs_init_erased K pm p pmem cfg hmagic h hfind herased
  rw [hI] at hinit
  have e1 : kvsI = kvs1 := (Prod.mk.inj (Prod.mk.inj hinit).2).1
  have e2 : pmI = pm1 := (Prod.mk.inj (Prod.mk.inj hinit).2).2
  subst e1 e2
  obtain ⟨pmem2, hok2, ha2⟩ := kvs_apply_all_inv K p ops [] kvsI kvs2 pmI pm2 pmem haI hokI hops
  rw [List.nil_append] at ha2
  have hfits := ha2.fits
  have hstop := kvs_stop_erased K kvs2 p pmem2 (kvs_log_size ops) ha2.part (by omega) ha2.erased
  obtain ⟨g1, g2⟩ := kvs_get_of_after K kvs2 p pmem2 pm2 ops k buf cap ha2 hok2 hstop hk1 hk2
  refine ⟨fun v hv hcap => ?_, g1⟩
  obtain ⟨pm3, h3, _⟩ := g2 v hv hcap
  exact ⟨pm3, h3⟩

/-! ### The example store of `test_fram.c` -/

theorem example_pm_kvs_ok : PmOK example_pm example_kvs_part (fun _ => 0xFF) :=
  ⟨rfl, by decide, (fun _ => 0xFF), 32768, ⟨rfl, rfl, rfl, rfl, by decide, rfl⟩, by decide,
    fun _ _ => rfl⟩

theorem example_kvs_find :
    fram_pm_find example_pm example_kvs_cfg.partition_name = some example_kvs_part := by
  decide

/-- The example run on an erased partition: `fram_kvs_init` and the calls
succeed when the calls are acceptable and their records fit the partition. -/
theorem example_kvs_run_ok (pm : fram_pm_t) (p : fram_partition_t) (ops : List kvs_op)
    (h : PmOK pm p (fun _ => 0xFF))
    (hfind : fram_pm_find pm example_kvs_cfg.partition_name = some p)
    (hvalid : ∀ op, op ∈ ops → op.valid example_K) (hfit : kvs_log_size ops ≤ p.size) :
    fram_kvs_init example_K pm example_kvs_cfg =
      (ESP_OK, (fram_kvs_init example_K pm example_kvs_cfg).2.1,
        (fram_kvs_init example_K pm example_kvs_cfg).2.2) ∧
    example_kvs_run pm ops =
      (ESP_OK, (example_kvs_run pm ops).2.1, (example_kvs_run pm ops).2.2) ∧
    ∃ pmem2, PmOK (example_kvs_run pm ops).2.2 p pmem2 ∧
      KvsAfter example_K (example_kvs_run pm ops).2.1 p pmem2 ops := by
  obtain ⟨kvsI, pmI, hI, hokI, haI⟩ := kvs_init_erased example_K pm p (fun _ => 0xFF)
    example_kvs_cfg (by decide) h hfind (fun _ _ => rfl)
  obtain ⟨kvs2, pm2, pmem2, h2, hok2, ha2⟩ := kvs_apply_all_ok example_K p ops [] kvsI pmI
    (fun _ => 0xFF) haI hokI hvalid (by rw [kvs_log_size_nil]; omega)
  rw [List.nil_append] at ha2
  have hrun : example_kvs_run pm ops = (ESP_OK, kvs2, pm2) := by
    unfold example_kvs_run
    rw [hI]
    exact h2
  refine ⟨by rw [hI], by rw [hrun], pmem2, ?_, ?_⟩
  · rw [hrun]
    exact hok2
  · rw [hrun]
    exact ha2

theorem example_kvs_ops6_valid (op : kvs_op) (ho : op ∈ example_kvs_ops6) :
    op.valid example_K := by
  have h : op = kvs_op.set [0x63, 0x66, 0x67] [0x6F, 0x6E] ∨ op = kvs_op.del [0x63, 0x66, 0x67]
      ∨ op = kvs_op.set [0x63, 0x66, 0x67] [0x6F, 0x66, 0x66] := by
    simpa [example_kvs_ops6] using ho
  rcases h with h | h | h <;> subst h <;>
    exact ⟨by decide, by decide, by decide, by decide⟩

/-- Witness for C1: example E6 on the erased `"kvs"` partition of the tests.
After `set("cfg", "on", 2)`, `delete("cfg")`, `set("cfg", "off", 3)` the map
binds `"cfg"` to `"off"`, and `fram_kvs_get("cfg")` with a zeroed buffer of 8
bytes returns `ESP_OK`, the bytes `"off"` and the length 3. -/
theorem kvs_behaves_as_map_witness :
    kvs_map_spec example_kvs_ops6 [0x63, 0x66, 0x67] = some [0x6F, 0x66, 0x66] ∧
    ∃ pm3, fram_kvs_get example_K (example_kvs_run example_pm example_kvs_ops6).2.1
        (example_kvs_run example_pm example_kvs_ops6).2.2 [0x63, 0x66, 0x67]
        [0, 0, 0, 0, 0, 0, 0, 0] 8
      = (ESP_OK, [0x6F, 0x66, 0x66, 0, 0, 0, 0, 0], 3, pm3) := by
  have hspec : kvs_map_spec example_kvs_ops6 [0x63, 0x66, 0x67] = some [0x6F, 0x66, 0x66] := by
    decide
  have hrun := example_kvs_run_ok example_pm example_kvs_part example_kvs_ops6
    example_pm_kvs_ok example_kvs_find example_kvs_ops6_valid (by decide)
  have hw := kvs_behaves_as_map example_K example_pm _ _ example_kvs_part (fun _ => 0xFF)
    example_kvs_cfg _ _ example_kvs_ops6 [0x63, 0x66, 0x67] [0, 0, 0, 0, 0, 0, 0, 0] 8
    (by decide) example_pm_kvs_ok example_kvs_find (fun _ _ => rfl) (by decide)
    hrun.1 hrun.2.1 (by decide) (by decide)
  exact ⟨hspec, hw.1 [0x6F, 0x66, 0x66] hspec (by decide)⟩

/-! ### A store that fills a partition of nearly `2^32` bytes -/

theorem example_big_pm_ok : PmOK example_big_pm example_big_part (fun _ => 0xFF) :=
  ⟨rfl, by decide, (fun _ => 0xFF), 4294967295, ⟨rfl, rfl, rfl, rfl, by decide, rfl⟩, by decide,
    fun _ _ => rfl⟩

theorem example_big_find :
    fram_pm_find example_big_pm example_kvs_cfg.partition_name = some example_big_part := by
  decide

theorem kvs_log_size_replicate (n : Nat) (op : kvs_op) :
    kvs_log_size (List.replicate n op) = n * op.size := by
  induction n with
  | zero => rw [List.replicate_zero, kvs_log_size_nil, Nat.zero_mul]
  | succ m ih => rw [List.replicate_succ, kvs_log_size_cons, ih, Nat.succ_mul, Nat.add_comm]

theorem example_big_length : example_big_ops.length = 171798691 :=
  List.length_replicate _ _

theorem example_big_size : kvs_log_size example_big_ops = 4294967275 := by
  unfold example_big_ops
  rw [kvs_log_size_replicate]
  have : (kvs_op.set [0x61] [0x6F, 0x6E, 0x65]).size = 25 := rfl
  rw [this]

theorem example_big_valid (op : kvs_op) (ho : op ∈ example_big_ops) : op.valid example_K := by
  rw [List.eq_of_mem_replicate ho]
  exact ⟨by decide, by decide, by decide, by decide⟩

/-- The map after a run of calls `set(k, v)` binds `k` to `v`. -/
theorem kvs_map_spec_replicate (n : Nat) (k v : List Nat) :
    kvs_map_spec (List.replicate (n + 1) (kvs_op.set k v)) k = some v := by
  induction n with
  | zero =>
    unfold kvs_map_spec
    simp [kvs_map_step, kvs_op.key]
  | succ m ih =>
    rw [List.replicate_succ', kvs_map_spec_snoc, ih]
    simp [kvs_map_step, kvs_op.key]

/-- One iteration of the loop of `fram_kvs_scan` at an offset where the loop
condition holds but a header does not fit the partition: the header read is
rejected and the scan returns its error. -/
theorem kvs_scan_loop_read_bad (K : Kconfig) (kvs : fram_kvs_t) (p : fram_partition_t)
    (pmem : Nat → Nat) (pm : fram_pm_t) (key : List Nat) (fuel off : Nat) (st : kvs_scan_t)
    (key_buf : List Nat) (hp : kvs.part = some p) (h : PmOK pm p pmem)
    (hcond : (off + KVS_HEADER_SIZE + 1) % U32 ≤ p.size) (hbad : ¬ off + 20 ≤ p.size) :
    fram_kvs_scan_loop K kvs p key (fuel + 1) pm off st key_buf
      = (ESP_ERR_INVALID_SIZE, st, pm) := by
  have h1 := fram_pm_read_bad pm p pmem off 20 h (by decide) hbad
  have c2 : fram_kvs_read_header kvs pm off
      = (ESP_ERR_INVALID_SIZE, fram_kvs_header_of_bytes [], pm) := by
    unfold fram_kvs_read_header
    rw [hp]
    show ((fram_pm_read pm (some p) off 20).1,
      fram_kvs_header_of_bytes (fram_pm_read pm (some p) off 20).2.1,
      (fram_pm_read pm (some p) off 20).2.2) = _
    rw [h1]
  rw [fram_kvs_scan_loop, if_pos hcond]
  simp only [c2, ne_eq, reduceCtorEq, not_false_eq_true, if_true]

/-- Counterexample to C1 as stated: on an erased partition of `2^32 - 2`
bytes, `fram_kvs_init` and 171798691 calls `set("a", "one", 3)` all return
`ESP_OK` and leave `write_offset = 2^32 - 21`; the map binds `"a"` to `"one"`,
but `fram_kvs_get("a")` with a buffer of 8 bytes returns `ESP_ERR_NOT_FOUND`:
behind the last record the loop condition of the scan wraps to `0 <= size`,
the header read at `2^32 - 21` is rejected and the scan returns its error. -/
theorem kvs_behaves_as_map_counterexample :
    PmOK example_big_pm example_big_part (fun _ => 0xFF) ∧
    fram_kvs_init example_K example_big_pm example_kvs_cfg =
      (ESP_OK, (fram_kvs_init example_K example_big_pm example_kvs_cfg).2.1,
        (fram_kvs_init example_K example_big_pm example_kvs_cfg).2.2) ∧
    example_kvs_run example_big_pm example_big_ops =
      (ESP_OK, (example_kvs_run example_big_pm example_big_ops).2.1,
        (example_kvs_run example_big_pm example_big_ops).2.2) ∧
    kvs_map_spec example_big_ops [0x61] = some [0x6F, 0x6E, 0x65] ∧
    (fram_kvs_get example_K (example_kvs_run example_big_pm example_big_ops).2.1
      (example_kvs_run example_big_pm example_big_ops).2.2 [0x61]
      [0, 0, 0, 0, 0, 0, 0, 0] 8).1 = ESP_ERR_NOT_FOUND := by
  obtain ⟨hinit, hrun, pmem2, hok2, ha2⟩ := example_kvs_run_ok example_big_pm example_big_part
    example_big_ops example_big_pm_ok example_big_find example_big_valid
    (by rw [example_big_size]; decide)
  refine ⟨example_big_pm_ok, hinit, hrun, kvs_map_spec_replicate 171798690 _ _, ?_⟩
  generalize (example_kvs_run example_big_pm example_big_ops).2.1 = kvs2 at ha2 ⊢
  generalize (example_kvs_run example_big_pm example_big_ops).2.2 = pm2 at hok2 ⊢
  obtain ⟨st1, pm3, kb3, hok3, _, hpre⟩ := kvs_scan_prefix example_K kvs2 example_big_part pmem2
    [0x61] ha2.part ha2.magic_lt example_big_ops 0 4123168604 pm2
    { found := false, deleted := false, last_hdr := kvs_header_zero, last_offset := 0 } [] none
    hok2 ha2.log ha2.valid (by rw [example_big_size]; decide) (Or.inl rfl)
  rw [example_big_length, example_big_size] at hpre
  have hbad := kvs_scan_loop_read_bad example_K kvs2 example_big_part pmem2 pm3 [0x61]
    4123168603 (0 + 4294967275) st1 kb3 ha2.part hok3 (by decide) (by decide)
  have hloop : fram_kvs_scan_loop example_K kvs2 example_big_part [0x61]
      (example_big_part.size + 1) pm2 0
      { found := false, deleted := false, last_hdr := kvs_header_zero, last_offset := 0 } []
        = (ESP_ERR_INVALID_SIZE, st1, pm3) := by
    have hf : example_big_part.size + 1 = 171798691 + 4123168604 := by decide
    rw [hf, hpre]
    exact hbad
  exact (kvs_get_scan_err example_K kvs2 example_big_part pm2 pm3 [0x61] _ 8 st1
    ESP_ERR_INVALID_SIZE ha2.part ha2.mutex (by decide) (by decide) hloop (by decide)).2

/-! ## Key/value store: a record whose stored checksum was overwritten -/

theorem le_bytes_four (c : Nat) :
    le_bytes 4 c = [c % 256, c / 256 % 256, c / 65536 % 256, c / 16777216 % 256] := by
  simp only [le_bytes, Nat.div_div_eq_div_mul]

/-- Four single-byte stores at consecutive addresses are one store of four
bytes. -/
theorem mem_write_four (mem : Nat → Nat) (addr b0 b1 b2 b3 : Nat) :
    mem_write (mem_write (mem_write (mem_write mem addr [b0]) (addr + 1) [b1])
      (addr + 2) [b2]) (addr + 3) [b3] = mem_write mem addr [b0, b1, b2, b3] := by
  funext a
  simp only [mem_write_apply, List.length_singleton, List.length_cons, List.length_nil]
  by_cases h3 : a = addr + 3
  · subst h3
    rw [if_pos (by omega), if_pos (by omega)]
    simp
  · rw [if_neg (by omega)]
    by_cases h2 : a = addr + 2
    · subst h2
      rw [if_pos (by omega), if_pos (by omega)]
      simp
    · rw [if_neg (by omega)]
      by_cases h1 : a = addr + 1
      · subst h1
        rw [if_pos (by omega), if_pos (by omega)]
        simp
      · rw [if_neg (by omega)]
        by_cases h0 : a = addr
        · subst h0
          rw [if_pos (by omega), if_pos (by omega)]
          simp
        · rw [if_neg (by omega), if_neg (by omega)]

/-- Overwriting the stored checksum of the record at `off` through the mock's
backing buffer leaves a working partition whose bytes `off + 16 .. off + 19`
hold the new value. -/
theorem kvs_poke_crc_ok (pm : fram_pm_t) (p : fram_partition_t) (pmem : Nat → Nat)
    (off c : Nat) (h : PmOK pm p pmem) (hfit : off + 20 ≤ p.size) :
    PmOK (kvs_poke_crc pm p off c) p (mem_write pmem (off + 16) (le_bytes 4 c)) := by
  have h0 := pm_poke_ok pm p pmem (off + 16) (c % 256) h (by omega)
  have h1 := pm_poke_ok _ p _ (off + 17) (c / 256 % 256) h0 (by omega)
  have h2 := pm_poke_ok _ p _ (off + 18) (c / 65536 % 256) h1 (by omega)
  have h3 := pm_poke_ok _ p _ (off + 19) (c / 16777216 % 256) h2 (by omega)
  rw [le_bytes_four, ← mem_write_four]
  exact h3

/-- The bytes of the partition as the test reads them in the backing buffer. -/
theorem pm_raw_read (pm : fram_pm_t) (p : fram_partition_t) (pmem : Nat → Nat)
    (off len : Nat) (h : PmOK pm p pmem) (hfit : off + len ≤ p.size) :
    mem_read pm.dev.hal.ctx.buffer (p.offset + off) len = mem_read pmem off len := by
  obtain ⟨_, _, mem, size, hd, _, hview⟩ := h
  rw [hd.mem_eq]
  unfold mem_read
  apply List.map_congr_left
  intro i hi
  rw [Nat.add_assoc]
  exact hview (off + i) (by have := List.mem_range.mp hi; omega)

/-- The stored checksum field of a record is the checksum of its header. -/
theorem kvs_rec_crc_field (pmem : Nat → Nat) (off magic seq : Nat) (op : kvs_op)
    (hrec : KRec pmem off magic seq op) :
    le_val (mem_read pmem (off + 16) 4) = (kvs_header_for magic seq op).crc32 := by
  unfold KRec at hrec
  rw [kvs_op_size_eq] at hrec
  obtain ⟨i1, _, _, _⟩ := kvs_image_parts pmem off _ op.key op.value FRAM_KVS_COMMIT
    (kvs_to_bytes_length _) hrec
  have e : (20 : Nat) = 16 + 4 := rfl
  rw [e, mem_read_add, fram_kvs_header_t.to_bytes] at i1
  obtain ⟨_, i3⟩ := List.append_inj i1 (by rw [mem_read_length, kvs_head_bytes_length])
  rw [i3]
  exact le_val_le_bytes_4 _ (by rw [kvs_header_for_crc]; exact fram_crc32_le_lt _ _)

/-- The record at `off` after its stored checksum was overwritten by `c`. -/
theorem kvs_poked_image (pmem : Nat → Nat) (off magic seq c : Nat) (op : kvs_op)
    (hrec : KRec pmem off magic seq op) :
    mem_read (mem_write pmem (off + 16) (le_bytes 4 c)) off op.size
      = ({ kvs_header_for magic seq op with crc32 := c } : fram_kvs_header_t).to_bytes
          ++ (op.key ++ (op.value ++ [FRAM_KVS_COMMIT])) := by
  unfold KRec at hrec
  have e : op.size = 16 + (4 + (op.key.length + op.value.length + 1)) := by
    rw [kvs_op_size_eq]
    omega
  rw [e, mem_read_add, mem_read_add] at hrec ⊢
  rw [fram_kvs_header_t.to_bytes, List.append_assoc] at hrec
  obtain ⟨i1, i2⟩ := List.append_inj hrec (by rw [mem_read_length, kvs_head_bytes_length])
  obtain ⟨_, i4⟩ := List.append_inj i2 (by rw [mem_read_length, le_bytes_length])
  have hl : (le_bytes 4 c).length = 4 := le_bytes_length _ _
  rw [mem_read_write_disjoint _ _ _ _ _ (Or.inl (by omega)),
    mem_read_write_disjoint _ _ _ (off + 16 + 4) _ (Or.inr (by omega)), i1, i4,
    fram_kvs_header_t.to_bytes, List.append_assoc]
  congr 1
  congr 1
  have := mem_read_write_same pmem (off + 16) (le_bytes 4 c)
  rw [hl] at this
  exact this

/-- The readers on a store whose log ends, for the scan, behind the records of
the calls `ops`: `fram_kvs_get` and `fram_kvs_get_len` see the map after
`ops`. -/
theorem kvs_readers_of_log (K : Kconfig) (kvs : fram_kvs_t) (p : fram_partition_t)
    (pmem : Nat → Nat) (pm : fram_pm_t) (ops : List kvs_op) (k buf : List Nat) (cap len0 : Nat)
    (hp : kvs.part = some p) (hm : kvs.magic < U32) (hmx : kvs.mutex = SemaphoreHandle_t.free)
    (h : PmOK pm p pmem) (hlog : KLog pmem kvs.magic 0 ops)
    (hvalid : ∀ op, op ∈ ops → op.valid K) (hfit : kvs_log_size ops ≤ p.size)
    (hstop : KStop K kvs p pmem (kvs_log_size ops))
    (hk1 : 1 ≤ k.length) (hk2 : k.length ≤ FRAM_KVS_KEY_MAX) :
    (kvs_map_spec ops k = none → (fram_kvs_get K kvs pm k buf cap).1 = ESP_ERR_NOT_FOUND) ∧
    (∀ v, kvs_map_spec ops k = some v →
      (∃ pm3, fram_kvs_get_len K kvs pm k len0 = (ESP_OK, v.length, pm3)) ∧
      (v.length ≤ cap → ∃ pm3, fram_kvs_get K kvs pm k buf cap
        = (ESP_OK, v ++ buf.drop v.length, v.length, pm3))) := by
  have hlen := kvs_log_size_ge_length ops
  obtain ⟨st1, pm1, hloop, hok1, hsees⟩ := kvs_scan_run K kvs p pmem k hp hm ops 0
    (p.size + 1) pm
    { found := false, deleted := false, last_hdr := kvs_header_zero, last_offset := 0 } [] none
    h hlog hvalid (by omega) (by rw [Nat.zero_add]; exact hstop) (by omega) (Or.inl rfl)
  obtain ⟨g1, g2⟩ := kvs_get_sees K kvs p pmem pm pm1 k buf cap st1 _ hp hmx hk1 hk2 hloop hok1
    hsees
  refine ⟨g1, fun v hv => ⟨?_, fun hcap => ?_⟩⟩
  · have hs2 : ScanSees p pmem k st1 (some v) := by
      have e : List.foldl (kvs_map_step k) none ops = some v := hv
      rw [e] at hsees
      exact hsees
    exact ⟨pm1, kvs_get_len_sees K kvs p pmem pm pm1 k len0 st1 v hp hmx hk1 hk2 hloop hs2⟩
  · obtain ⟨pm3, h3, _⟩ := g2 v hv hcap
    exact ⟨pm3, h3⟩

/-- C9: a corrupted checksum stops the scan. For a store initialised on an
erased partition and distinct keys `a`, `b`: after `fram_kvs_set(a, va)` and
then `fram_kvs_set(b, vb)` return `ESP_OK`, overwriting the stored `crc32`
field of the record of `b` on the media by any 32-bit value `c` different from
the stored one makes `fram_kvs_get(b)` return `ESP_ERR_NOT_FOUND`, while
`fram_kvs_get(a)` with a buffer of at least `|va|` bytes still returns `ESP_OK`
with `va` and `*len = |va|`, and `fram_kvs_get_len(a)` returns `ESP_OK` with
`|va|`, all on the same store object without a new `fram_kvs_init`. -/
theorem kvs_crc_corruption_stops_scan (K : Kconfig) (pm pm1 pm2 pm3 : fram_pm_t)
    (p : fram_partition_t) (pmem : Nat → Nat) (cfg : fram_kvs_config_t)
    (kvs1 kvs2 kvs3 : fram_kvs_t) (a b va vb buf : List Nat) (c cap len0 : Nat)
    (hmagic : cfg.magic < U32) (h : PmOK pm p pmem)
    (hfind : fram_pm_find pm cfg.partition_name = some p)
    (herased : ∀ i, i < p.size → pmem i = 0xFF)
    (hinit : fram_kvs_init K pm cfg = (ESP_OK, kvs1, pm1))
    (hseta : fram_kvs_set K kvs1 pm1 a va = (ESP_OK, kvs2, pm2))
    (hsetb : fram_kvs_set K kvs2 pm2 b vb = (ESP_OK, kvs3, pm3))
    (hab : a ≠ b) (hc : c < U32)
    (hne : c ≠ le_val (mem_read pm3.dev.hal.ctx.buffer (p.offset + (kvs2.write_offset + 16)) 4))
    (hcap : va.length ≤ cap) :
    (fram_kvs_get K kvs3 (kvs_poke_crc pm3 p kvs2.write_offset c) b buf cap).1
      = ESP_ERR_NOT_FOUND ∧
    (∃ pm5, fram_kvs_get K kvs3 (kvs_poke_crc pm3 p kvs2.write_offset c) a buf cap
      = (ESP_OK, va ++ buf.drop va.length, va.length, pm5)) ∧
    (∃ pm5, fram_kvs_get_len K kvs3 (kvs_poke_crc pm3 p kvs2.write_offset c) a len0
      = (ESP_OK, va.length, pm5)) := by
  obtain ⟨kvsI, pmI, hI, hokI, haI⟩ := kvs_init_erased K pm p pmem cfg hmagic h hfind herased
  rw [hI] at hinit
  have e1 : kvsI = kvs1 := (Prod.mk.inj (Prod.mk.inj hinit).2).1
  have e2 : pmI = pm1 := (Prod.mk.inj (Prod.mk.inj hinit).2).2
  subst e1 e2
  obtain ⟨pmemA, hokA, haA⟩ := kvs_apply_inv K kvsI kvs2 p pmem pmI pm2 [] (kvs_op.set a va)
    haI hokI hseta
  obtain ⟨pmemB, hokB, haB⟩ := kvs_apply_inv K kvs2 kvs3 p pmemA pm2 pm3
    ([] ++ [kvs_op.set a va]) (kvs_op.set b vb) haA hokA hsetb
  rw [List.nil_append] at haA haB
  have hoffA : kvs2.write_offset = kvs_log_size [kvs_op.set a va] := haA.offset
  have hsz2 : kvs_log_size ([kvs_op.set a va] ++ [kvs_op.set b vb])
      = kvs_log_size [kvs_op.set a va] + (kvs_op.set b vb).size := by
    rw [kvs_log_size_append]
    congr 1
  have hfitB := haB.fits
  rw [hsz2] at hfitB
  have hsb := kvs_op_size_eq (kvs_op.set b vb)
  have hva : (kvs_op.set a va).valid K := haB.valid _ (by simp)
  have hvb : (kvs_op.set b vb).valid K := haB.valid _ (by simp)
  obtain ⟨⟨seqa, hsa, hreca⟩, ⟨seqb, hsqb, hrecb⟩, _⟩ := haB.log
  rw [Nat.zero_add, kvs_op_size_eq] at hrecb
  have hsizeA : kvs_log_size [kvs_op.set a va] = 20 + a.length + va.length + 1 := by
    rw [kvs_log_size_cons, kvs_log_size_nil, Nat.add_zero]
    rfl
  have hrecb2 : KRec pmemB kvs2.write_offset kvs3.magic seqb (kvs_op.set b vb) := by
    rw [hoffA, hsizeA]
    exact hrecb
  have hstored : le_val (mem_read pm3.dev.hal.ctx.buffer (p.offset + (kvs2.write_offset + 16)) 4)
      = (kvs_header_for kvs3.magic seqb (kvs_op.set b vb)).crc32 := by
    rw [pm_raw_read pm3 p pmemB (kvs2.write_offset + 16) 4 hokB (by omega)]
    exact kvs_rec_crc_field pmemB kvs2.write_offset kvs3.magic seqb _ hrecb2
  rw [hstored] at hne
  have hok4 := kvs_poke_crc_ok pm3 p pmemB kvs2.write_offset c hokB (by omega)
  have himg := kvs_poked_image pmemB kvs2.write_offset kvs3.magic seqb c _ hrecb2
  have hstop : KStop K kvs3 p (mem_write pmemB (kvs2.write_offset + 16) (le_bytes 4 c))
      (kvs_log_size [kvs_op.set a va]) := by
    rw [← hoffA]
    exact kvs_stop_bad_crc K kvs3 p _ kvs2.write_offset seqb c (kvs_op.set b vb) haB.part
      haB.magic_lt hsqb hc hvb (by omega) hne himg
  have hlog : KLog (mem_write pmemB (kvs2.write_offset + 16) (le_bytes 4 c)) kvs3.magic 0
      [kvs_op.set a va] := by
    apply klog_congr pmemB _ kvs3.magic [kvs_op.set a va] 0
    · intro x _ hx
      exact mem_write_outside _ _ _ _ (Or.inl (by omega))
    · exact ⟨⟨seqa, hsa, hreca⟩, trivial⟩
  have hvalid : ∀ op, op ∈ [kvs_op.set a va] → op.valid K := by
    intro op ho
    rw [List.mem_singleton.mp ho]
    exact hva
  have hspec_b : kvs_map_spec [kvs_op.set a va] b = none := by
    simp [kvs_map_spec, kvs_map_step, kvs_op.key, hab]
  have hspec_a : kvs_map_spec [kvs_op.set a va] a = some va := by
    simp [kvs_map_spec, kvs_map_step, kvs_op.key]
  have rb := kvs_readers_of_log K kvs3 p _ (kvs_poke_crc pm3 p kvs2.write_offset c)
    [kvs_op.set a va] b buf cap len0 haB.part haB.magic_lt haB.mutex hok4 hlog hvalid
    (by omega) hstop hvb.1 hvb.2.1
  have ra := kvs_readers_of_log K kvs3 p _ (kvs_poke_crc pm3 p kvs2.write_offset c)
    [kvs_op.set a va] a buf cap len0 haB.part haB.magic_lt haB.mutex hok4 hlog hvalid
    (by omega) hstop hva.1 hva.2.1
  exact ⟨rb.1 hspec_b, (ra.2 va hspec_a).2 hcap, (ra.2 va hspec_a).1⟩

/-! ### The test `fram_kvs_crc_stop_and_len` -/

theorem fram_kvs_apply_set (K : Kconfig) (kvs : fram_kvs_t) (pm : fram_pm_t) (k v : List Nat) :
    fram_kvs_apply K kvs pm (kvs_op.set k v) = fram_kvs_set K kvs pm k v := rfl

/-- A `fram_kvs_set` with acceptable arguments whose record fits the
partition succeeds. -/
theorem kvs_set_ok (K : Kconfig) (kvs : fram_kvs_t) (p : fram_partition_t)
    (pmem : Nat → Nat) (pm : fram_pm_t) (ops : List kvs_op) (k v : List Nat)
    (ha : KvsAfter K kvs p pmem ops) (h : PmOK pm p pmem) (hv : (kvs_op.set k v).valid K)
    (hfit : kvs.write_offset + (kvs_op.set k v).size ≤ p.size) :
    ∃ kvs1 pm1 pmem1, fram_kvs_set K kvs pm k v = (ESP_OK, kvs1, pm1) ∧
      PmOK pm1 p pmem1 ∧ KvsAfter K kvs1 p pmem1 (ops ++ [kvs_op.set k v]) := by
  obtain ⟨kvs1, pm1, pmem1, h1, hok1, ha1⟩ := kvs_commit_ok K kvs p pmem pm ops _ ha h hv hfit
  rw [← kvs_set_eq K kvs pm p k v ha.part ha.mutex hv] at h1
  exact ⟨kvs1, pm1, pmem1, h1, hok1, ha1⟩

/-- The stored checksum field of the second record of a log of two records,
as read in the backing buffer, is a 32-bit value. -/
theorem kvs_stored_crc_lt (K : Kconfig) (kvs : fram_kvs_t) (p : fram_partition_t)
    (pmem : Nat → Nat) (pm : fram_pm_t) (opa opb : kvs_op)
    (ha : KvsAfter K kvs p pmem ([opa] ++ [opb])) (h : PmOK pm p pmem) :
    le_val (mem_read pm.dev.hal.ctx.buffer (p.offset + (opa.size + 16)) 4) < U32 := by
  have hfit := ha.fits
  rw [kvs_log_size_append, kvs_log_size_cons, kvs_log_size_cons, kvs_log_size_nil,
    kvs_op_size_eq opb] at hfit
  obtain ⟨_, ⟨seqb, _, hrecb⟩, _⟩ := ha.log
  rw [Nat.zero_add] at hrecb
  rw [pm_raw_read pm p pmem (opa.size + 16) 4 h (by omega),
    kvs_rec_crc_field pmem opa.size kvs.magic seqb opb hrecb, kvs_header_for_crc]
  exact fram_crc32_le_lt _ _

theorem xor_ones_ne (x : Nat) : x ^^^ 4294967295 ≠ x := by
  intro h
  have h2 : x ^^^ (x ^^^ 4294967295) = 4294967295 := Nat.xor_cancel_left x 4294967295
  rw [h, Nat.xor_self] at h2
  exact absurd h2 (by decide)

theorem xor_ones_lt (x : Nat) (h : x < U32) : x ^^^ 4294967295 < U32 := by
  have hx : x < 2 ^ 32 := h
  have hy : 4294967295 < 2 ^ 32 := by decide
  exact Nat.xor_lt_two_pow hx hy

/-- The two calls of the test succeed; the store, the partition manager and
the partition content after them. -/
theorem example_kvs_ab_ok :
    ∃ kvsI pmI kvsA pmA kvsB pmB pmemB,
      fram_kvs_init example_K example_pm example_kvs_cfg = (ESP_OK, kvsI, pmI) ∧
      example_kvs_a = (ESP_OK, kvsA, pmA) ∧ example_kvs_b = (ESP_OK, kvsB, pmB) ∧
      kvsA.write_offset = (kvs_op.set [0x61] [0x6F, 0x6E, 0x65]).size ∧
      PmOK pmB example_kvs_part pmemB ∧
      KvsAfter example_K kvsB example_kvs_part pmemB
        ([kvs_op.set [0x61] [0x6F, 0x6E, 0x65]] ++ [kvs_op.set [0x62] [0x74, 0x77, 0x6F]]) := by
  obtain ⟨kvsI, pmI, hI, hokI, haI⟩ := kvs_init_erased example_K example_pm example_kvs_part
    (fun _ => 0xFF) example_kvs_cfg (by decide) example_pm_kvs_ok example_kvs_find
    (fun _ _ => rfl)
  have hs : example_kvs_part.size = 4096 := rfl
  obtain ⟨kvsA, pmA, pmemA, hA, hokA, haA⟩ := kvs_set_ok example_K kvsI example_kvs_part _ pmI []
    [0x61] [0x6F, 0x6E, 0x65] haI hokI ⟨by decide, by decide, by decide, by decide⟩
    (by rw [haI.offset, kvs_log_size_nil, hs]; decide)
  rw [List.nil_append] at haA
  have hoA : kvsA.write_offset = (kvs_op.set [0x61] [0x6F, 0x6E, 0x65]).size := by
    rw [haA.offset, kvs_log_size_cons, kvs_log_size_nil, Nat.add_zero]
  obtain ⟨kvsB, pmB, pmemB, hB, hokB, haB⟩ := kvs_set_ok example_K kvsA example_kvs_part _ pmA _
    [0x62] [0x74, 0x77, 0x6F] haA hokA ⟨by decide, by decide, by decide, by decide⟩
    (by rw [hoA, hs]; decide)
  have ea : example_kvs_a = (ESP_OK, kvsA, pmA) := by
    unfold example_kvs_a
    rw [hI]
    exact hA
  have eb : example_kvs_b = (ESP_OK, kvsB, pmB) := by
    unfold example_kvs_b
    rw [ea]
    exact hB
  exact ⟨kvsI, pmI, kvsA, pmA, kvsB, pmB, pmemB, hI, ea, eb, hoA, hokB, haB⟩

/-- Witness for C9: the test `fram_kvs_crc_stop_and_len` on the erased `"kvs"`
partition. After `set("a", "one", 3)` and `set("b", "two", 3)` the stored
checksum of the record of `"b"` is replaced by its complement; then
`fram_kvs_get("b")` returns `ESP_ERR_NOT_FOUND`, `fram_kvs_get("a")` with a
zeroed buffer of 8 bytes returns `ESP_OK` with `"one"` and the length 3, and
`fram_kvs_get_len("a")` returns `ESP_OK` with 3. -/
theorem kvs_crc_corruption_stops_scan_witness :
    (fram_kvs_get example_K example_kvs_b.2.1
      (kvs_poke_crc example_kvs_b.2.2 example_kvs_part example_kvs_a.2.1.write_offset
        example_kvs_bad_crc) [0x62] [0, 0, 0, 0, 0, 0, 0, 0] 8).1 = ESP_ERR_NOT_FOUND ∧
    (∃ pm5, fram_kvs_get example_K example_kvs_b.2.1
      (kvs_poke_crc example_kvs_b.2.2 example_kvs_part example_kvs_a.2.1.write_offset
        example_kvs_bad_crc) [0x61] [0, 0, 0, 0, 0, 0, 0, 0] 8
      = (ESP_OK, [0x6F, 0x6E, 0x65, 0, 0, 0, 0, 0], 3, pm5)) ∧
    (∃ pm5, fram_kvs_get_len example_K example_kvs_b.2.1
      (kvs_poke_crc example_kvs_b.2.2 example_kvs_part example_kvs_a.2.1.write_offset
        example_kvs_bad_crc) [0x61] 0 = (ESP_OK, 3, pm5)) := by
  obtain ⟨kvsI, pmI, kvsA, pmA, kvsB, pmB, pmemB, hI, ea, eb, hoA, hokB, haB⟩ :=
    example_kvs_ab_ok
  have hlt := kvs_stored_crc_lt example_K kvsB example_kvs_part pmemB pmB _ _ haB hokB
  rw [← hoA] at hlt
  have hw := kvs_crc_corruption_stops_scan example_K example_pm pmI pmA pmB example_kvs_part
    (fun _ => 0xFF) example_kvs_cfg kvsI kvsA kvsB [0x61] [0x62] [0x6F, 0x6E, 0x65]
    [0x74, 0x77, 0x6F] [0, 0, 0, 0, 0, 0, 0, 0]
    (le_val (mem_read pmB.dev.hal.ctx.buffer
      (example_kvs_part.offset + (kvsA.write_offset + 16)) 4) ^^^ 4294967295) 8 0
    (by decide) example_pm_kvs_ok example_kvs_find (fun _ _ => rfl) hI
    (by rw [← ea]; unfold example_kvs_a; rw [hI])
    (by rw [← eb]; unfold example_kvs_b; rw [ea])
    (by decide) (xor_ones_lt _ hlt) (xor_ones_ne _) (by decide)
  unfold example_kvs_bad_crc example_kvs_stored_crc
  rw [eb, ea]
  exact hw

/-! ## Range safety and read-only partitions -/

/-- A non-empty transfer outside the capacity fails the range check of the
device layer. -/
theorem dev_range_bad (size offset len : Nat)
    (h : offset > size ∨ len > size ∨ offset + len > size) :
    size = 0 ∨ offset > size ∨ len > size ∨ offset > size - len := by
  omega

/-- C17 (amended): range safety for non-empty transfers. For every offset and
every `len ≥ 1` with `offset > size`, `len > size` or `offset + len > size`,
where `size` is the device capacity for `fram_dev_read` and `fram_dev_write`
and the partition size for `fram_pm_read` and `fram_pm_write` on an
initialised partition manager (and, for the write, a writable partition), the
call returns `ESP_ERR_INVALID_SIZE` and hands back the device, its HAL
context and its statistics, exactly as it was: the HAL is not called. -/
theorem range_safety (dev : fram_dev_t) (pm : fram_pm_t) (p : fram_partition_t)
    (offset len : Nat) (data : List Nat) (hlen : 1 ≤ len) (hdata : data.length = len) :
    ((offset > dev.hal.size_bytes ∨ len > dev.hal.size_bytes
        ∨ offset + len > dev.hal.size_bytes) →
      fram_dev_read dev offset len = (ESP_ERR_INVALID_SIZE, [], dev) ∧
      fram_dev_write dev offset data = (ESP_ERR_INVALID_SIZE, dev)) ∧
    (pm.initialized = true → (offset > p.size ∨ len > p.size ∨ offset + len > p.size) →
      fram_pm_read pm (some p) offset len = (ESP_ERR_INVALID_SIZE, [], pm) ∧
      (p.flags &&& FRAM_PART_FLAG_READONLY = 0 →
        fram_pm_write pm (some p) offset data = (ESP_ERR_INVALID_SIZE, pm))) := by
  constructor
  · intro h
    have hb := dev_range_bad dev.hal.size_bytes offset len h
    constructor
    · unfold fram_dev_read
      rw [if_neg (by omega), if_pos hb]
    · unfold fram_dev_write
      rw [hdata, if_neg (by omega), if_pos hb]
  · intro hi h
    have hvr : fram_pm_is_valid_range p offset len = false := by
      unfold fram_pm_is_valid_range
      rw [if_neg (by omega), if_pos (by omega)]
    constructor
    · simp only [fram_pm_read, hi, hvr, Bool.not_true, Bool.false_eq_true, if_false,
        Bool.not_false, if_true]
    · intro hw
      simp only [fram_pm_write, hi, hw, hdata, hvr, Bool.not_true, Bool.false_eq_true, if_false,
        Bool.not_false, if_true, ne_eq, not_true_eq_false]

/-- Witness for C17: one byte at the offset 32768 of the erased 32 KiB mock
device, and one byte at the offset 0x1000 of the `"kvs"` partition of 0x1000
bytes. -/
theorem range_safety_witness :
    fram_dev_read (mock_dev (fun _ => 0xFF) 32768) 32768 1
      = (ESP_ERR_INVALID_SIZE, [], mock_dev (fun _ => 0xFF) 32768) ∧
    fram_dev_write (mock_dev (fun _ => 0xFF) 32768) 32768 [0]
      = (ESP_ERR_INVALID_SIZE, mock_dev (fun _ => 0xFF) 32768) ∧
    fram_pm_read example_pm (some example_kvs_part) 4096 1
      = (ESP_ERR_INVALID_SIZE, [], example_pm) ∧
    fram_pm_write example_pm (some example_kvs_part) 4096 [0]
      = (ESP_ERR_INVALID_SIZE, example_pm) := by
  have hw := range_safety (mock_dev (fun _ => 0xFF) 32768) example_pm example_kvs_part 32768 1
    [0] (by decide) rfl
  have hw2 := range_safety (mock_dev (fun _ => 0xFF) 32768) example_pm example_kvs_part 4096 1
    [0] (by decide) rfl
  have h1 := hw.1 (Or.inr (Or.inr (by decide)))
  have h2 := hw2.2 rfl (Or.inr (Or.inr (by decide)))
  exact ⟨h1.1, h1.2, h2.1, h2.2 (by decide)⟩

/-- Counterexample to C17 as stated: an empty transfer at an offset beyond the
capacity is accepted. On the 32 KiB mock device `fram_dev_read` and
`fram_dev_write` with `offset = 40000 > size` and `len = 0` return `ESP_OK`,
and so do `fram_pm_read` and `fram_pm_write` at offset 5000 of the writable
partition `"kvs"` of 4096 bytes. -/
theorem range_safety_counterexample :
    40000 > (mock_dev (fun _ => 0xFF) 32768).hal.size_bytes ∧
    (fram_dev_read (mock_dev (fun _ => 0xFF) 32768) 40000 0).1 = ESP_OK ∧
    (fram_dev_write (mock_dev (fun _ => 0xFF) 32768) 40000 []).1 = ESP_OK ∧
    5000 > example_kvs_part.size ∧
    example_kvs_part.flags &&& FRAM_PART_FLAG_READONLY = 0 ∧
    (fram_pm_read example_pm (some example_kvs_part) 5000 0).1 = ESP_OK ∧
    (fram_pm_write example_pm (some example_kvs_part) 5000 []).1 = ESP_OK := by
  refine ⟨by decide, rfl, rfl, by decide, by decide, rfl, rfl⟩

/-- C19: read-only partitions are never modified. For every partition whose
flags have the read-only bit set, every partition manager, offset, buffer and
length: `fram_pm_write` and `fram_pm_erase` return `ESP_ERR_INVALID_STATE` and
hand back the partition manager with its device exactly as it was (no device
write is issued), and `fram_pm_read` gives the same result as on the same
partition with any other flags, writable ones included. -/
theorem pm_readonly_never_modified (pm : fram_pm_t) (p : fram_partition_t)
    (offset len flags : Nat) (data : List Nat)
    (hro : p.flags &&& FRAM_PART_FLAG_READONLY ≠ 0) :
    fram_pm_write pm (some p) offset data = (ESP_ERR_INVALID_STATE, pm) ∧
    fram_pm_erase pm (some p) = (ESP_ERR_INVALID_STATE, pm) ∧
    fram_pm_read pm (some p) offset len
      = fram_pm_read pm (some { p with flags := flags }) offset len := by
  refine ⟨?_, ?_, rfl⟩
  · unfold fram_pm_write
    by_cases hi : pm.initialized = true
    · simp only [hi, Bool.not_true, Bool.false_eq_true, if_false, hro, ne_eq, not_false_eq_true,
        if_true]
    · simp only [Bool.not_eq_true] at hi
      simp only [hi, Bool.not_false, if_true]
  · unfold fram_pm_erase
    by_cases hi : pm.initialized = true
    · simp only [hi, Bool.not_true, Bool.false_eq_true, if_false, hro, ne_eq, not_false_eq_true,
        if_true]
    · simp only [Bool.not_eq_true] at hi
      simp only [hi, Bool.not_false, if_true]

/-- Witness for C19: the `"kvs"` partition of the tests with the read-only
flag set, on the example partition manager. -/
theorem pm_readonly_never_modified_witness :
    fram_pm_write example_pm (some example_ro_part) 0 [1, 2, 3, 4]
      = (ESP_ERR_INVALID_STATE, example_pm) ∧
    fram_pm_erase example_pm (some example_ro_part) = (ESP_ERR_INVALID_STATE, example_pm) ∧
    fram_pm_read example_pm (some example_ro_part) 0 4
      = fram_pm_read example_pm (some { example_ro_part with flags := 0 }) 0 4 :=
  pm_readonly_never_modified example_pm example_ro_part 0 4 0 [1, 2, 3, 4] (by decide)

/-! ## Erasing a partition -/

/-- The function `fram_pm_write` on a working device, seen at the device: the
bytes are stored at `part.offset + offset`. -/
theorem fram_pm_write_dev (pm : fram_pm_t) (p : fram_partition_t) (mem : Nat → Nat)
    (size offset : Nat) (data : List Nat) (hi : pm.initialized = true)
    (hw : p.flags &&& FRAM_PART_FLAG_READONLY = 0) (hd : DevOK pm.dev mem size)
    (hfit : p.offset + p.size ≤ size) (hlen : 0 < data.length)
    (hr : offset + data.length ≤ p.size) :
    ∃ pm1, fram_pm_write pm (some p) offset data = (ESP_OK, pm1) ∧ pm1.initialized = true ∧
      DevOK pm1.dev (mem_write mem (p.offset + offset) data) size ∧ PmSame pm pm1 := by
  have hsz := hd.size_lt
  have hU : (p.offset + offset) % U32 = p.offset + offset :=
    Nat.mod_eq_of_lt (by omega)
  obtain ⟨dev1, h1, hd1⟩ := fram_dev_write_ok pm.dev mem size (p.offset + offset) data hd hlen
    (by omega)
  refine ⟨{ pm with dev := dev1 }, ?_, hi, hd1, rfl, rfl⟩
  have hvr : fram_pm_is_valid_range p offset data.length = true := by
    unfold fram_pm_is_valid_range
    rw [if_neg (by omega), if_neg (by omega)]
  simp only [fram_pm_write, hi, hvr, hU, h1, hw, Bool.not_true, Bool.false_eq_true, if_false,
    ne_eq, not_true_eq_false]

/-- The chunk loop of `fram_pm_erase` on a working device: it terminates with
`ESP_OK` and has stored 0xFF in the `remaining` bytes from `offset` on. -/
theorem fram_pm_erase_loop_ok (p : fram_partition_t) (size : Nat)
    (hw : p.flags &&& FRAM_PART_FLAG_READONLY = 0) (hfit : p.offset + p.size ≤ size) :
    ∀ (fuel : Nat) (pm : fram_pm_t) (mem : Nat → Nat) (off rem : Nat), rem ≤ fuel →
      off + rem ≤ p.size → pm.initialized = true → DevOK pm.dev mem size →
      ∃ pm1, fram_pm_erase_loop fuel pm p off rem = (ESP_OK, pm1) ∧ pm1.initialized = true ∧
        DevOK pm1.dev (mem_write mem (p.offset + off) (List.replicate rem 0xFF)) size ∧
        PmSame pm pm1 := by
  intro fuel
  induction fuel with
  | zero =>
    intro pm mem off rem hf _ hi hd
    have : rem = 0 := by omega
    subst this
    refine ⟨pm, ?_, hi, ?_, rfl, rfl⟩
    · rfl
    · rw [List.replicate_zero, mem_write_nil]
      exact hd
  | succ n ih =>
    intro pm mem off rem hf hr hi hd
    have hsz := hd.size_lt
    rw [U32_eq] at hsz
    by_cases h0 : rem = 0
    · subst h0
      refine ⟨pm, ?_, hi, ?_, rfl, rfl⟩
      · rw [fram_pm_erase_loop, if_pos rfl]
      · rw [List.replicate_zero, mem_write_nil]
        exact hd
    · obtain ⟨chunk, hchunk⟩ : ∃ chunk, chunk =
          (if rem > FRAM_PM_ERASE_CHUNK then FRAM_PM_ERASE_CHUNK else rem) := ⟨_, rfl⟩
      have hc1 : 0 < chunk ∧ chunk ≤ rem := by
        rw [hchunk]
        have : FRAM_PM_ERASE_CHUNK = 64 := rfl
        split_ifs <;> omega
      obtain ⟨pm1, h1, hi1, hd1, hs1⟩ := fram_pm_write_dev pm p mem size off
        (List.replicate chunk 0xFF) hi hw hd hfit (by rw [List.length_replicate]; exact hc1.1)
        (by rw [List.length_replicate]; omega)
      obtain ⟨pm2, h2, hi2, hd2, hs2⟩ := ih pm1 _ (off + chunk) (rem - chunk) (by omega)
        (by omega) hi1 hd1
      have hmod : (off + chunk) % U32 = off + chunk :=
        Nat.mod_eq_of_lt (by rw [U32_eq]; omega)
      have htake : (List.replicate rem 0xFF).take chunk = List.replicate chunk 0xFF := by
        rw [List.take_replicate, Nat.min_eq_left hc1.2]
      have hdrop : (List.replicate rem 0xFF).drop chunk = List.replicate (rem - chunk) 0xFF := by
        rw [List.drop_replicate]
      have hmem := mem_write_chunks mem (p.offset + off) chunk (List.replicate rem 0xFF)
        (by rw [List.length_replicate]; exact hc1.2)
      rw [htake, hdrop] at hmem
      rw [← Nat.add_assoc, hmem] at hd2
      refine ⟨pm2, ?_, hi2, hd2, hs2.1.trans hs1.1, hs2.2.trans hs1.2⟩
      rw [fram_pm_erase_loop, if_neg h0]
      simp only [← hchunk, h1, ne_eq, not_true_eq_false, if_false, hmod]
      exact h2

/-- C20: erase fills exactly the partition. For every writable partition of
an initialised partition manager that lies inside a working device (any size,
multiples of the 64-byte chunk or not): `fram_pm_erase` terminates with
`ESP_OK`; afterwards every device byte in
`[part.offset, part.offset + part.size)` is 0xFF and every device byte outside
that range is unchanged, and the device is still working. -/
theorem pm_erase_fills_partition (pm : fram_pm_t) (p : fram_partition_t) (mem : Nat → Nat)
    (size : Nat) (hi : pm.initialized = true) (hw : p.flags &&& FRAM_PART_FLAG_READONLY = 0)
    (hd : DevOK pm.dev mem size) (hfit : p.offset + p.size ≤ size) :
    ∃ pm1, fram_pm_erase pm (some p) = (ESP_OK, pm1) ∧
      (∀ a, pm1.dev.hal.ctx.buffer a
        = if p.offset ≤ a ∧ a < p.offset + p.size then 0xFF else pm.dev.hal.ctx.buffer a) ∧
      (∃ mem1, DevOK pm1.dev mem1 size) ∧ PmSame pm pm1 := by
  obtain ⟨pm1, h1, _, hd1, hs1⟩ := fram_pm_erase_loop_ok p size hw hfit p.size pm mem 0 p.size
    (Nat.le_refl _) (by omega) hi hd
  refine ⟨pm1, ?_, ?_, ⟨_, hd1⟩, hs1⟩
  · unfold fram_pm_erase
    simp only [hi, hw, Bool.not_true, Bool.false_eq_true, if_false, ne_eq, not_true_eq_false]
    exact h1
  · intro a
    rw [hd1.mem_eq, hd.mem_eq, mem_write_apply, List.length_replicate, Nat.add_zero]
    by_cases hc : p.offset ≤ a ∧ a < p.offset + p.size
    · rw [if_pos hc, if_pos hc, List.getD_eq_getElem?_getD,
        List.getElem?_replicate_of_lt (by omega)]
      rfl
    · rw [if_neg hc, if_neg hc]

theorem example_zero_dev_ok : DevOK example_zero_pm.dev (fun _ => 0) 32768 :=
  ⟨rfl, rfl, rfl, rfl, by decide, rfl⟩

/-- Witness for C20: erasing a partition of 100 bytes at offset 944 of a
zero-filled 32 KiB device. -/
theorem pm_erase_fills_partition_witness :
    ∃ pm1, fram_pm_erase example_zero_pm (some example_odd_part) = (ESP_OK, pm1) ∧
      (∀ a, pm1.dev.hal.ctx.buffer a
        = if example_odd_part.offset ≤ a ∧ a < example_odd_part.offset + example_odd_part.size
          then 0xFF else example_zero_pm.dev.hal.ctx.buffer a) ∧
      (∃ mem1, DevOK pm1.dev mem1 32768) ∧ PmSame example_zero_pm pm1 :=
  pm_erase_fills_partition example_zero_pm example_odd_part (fun _ => 0) 32768 rfl (by decide)
    example_zero_dev_ok (by decide)

/-! ## Validation of the partition table -/

/-- The first loop of `fram_pm_init` accepts exactly the tables whose entries
are all acceptable, and then has copied them in order. -/
theorem pm_init_copy_spec (ds : Nat) :
    ∀ (l acc : List fram_partition_t),
      ((fram_pm_init_copy ds l acc).1 = ESP_OK ↔ ∀ e, e ∈ l → spec_entry_ok ds e) ∧
      ((fram_pm_init_copy ds l acc).1 = ESP_OK → (fram_pm_init_copy ds l acc).2 = acc ++ l) := by
  intro l
  induction l with
  | nil =>
    intro acc
    refine ⟨⟨fun _ e he => absurd he (List.not_mem_nil _), fun _ => rfl⟩, fun _ => ?_⟩
    rw [List.append_nil]
    rfl
  | cons src rest ih =>
    intro acc
    have h16 : FRAM_PART_NAME_MAX = 16 := rfl
    obtain ⟨nl, hnl⟩ : ∃ nl, nl = (if src.name.length < FRAM_PART_NAME_MAX then src.name.length
        else FRAM_PART_NAME_MAX) := ⟨_, rfl⟩
    have hnl2 : (nl = 0 ∨ nl ≥ FRAM_PART_NAME_MAX) ↔ ¬ (1 ≤ src.name.length ∧ src.name.length ≤ 15) := by
      rw [hnl, h16]
      split_ifs <;> omega
    by_cases hs : src.size = 0
    · have e : fram_pm_init_copy ds (src :: rest) acc = (ESP_ERR_INVALID_SIZE, acc) := by
        rw [fram_pm_init_copy, if_pos hs]
      rw [e]
      refine ⟨⟨fun h => by simp at h, fun h => ?_⟩, fun h => by simp at h⟩
      have := (h src (List.mem_cons_self _ _)).2.2.1
      omega
    · by_cases hn : nl = 0 ∨ nl ≥ FRAM_PART_NAME_MAX
      · have e : fram_pm_init_copy ds (src :: rest) acc = (ESP_ERR_INVALID_ARG, acc) := by
          rw [fram_pm_init_copy, if_neg hs]
          simp only [← hnl, if_pos hn]
        rw [e]
        refine ⟨⟨fun h => by simp at h, fun h => ?_⟩, fun h => by simp at h⟩
        have h2 := h src (List.mem_cons_self _ _)
        exact absurd ⟨h2.1, h2.2.1⟩ (hnl2.mp hn)
      · by_cases hr : src.offset > ds ∨ src.size > ds ∨ src.offset > ds - src.size
        · have e : fram_pm_init_copy ds (src :: rest) acc = (ESP_ERR_INVALID_SIZE, acc) := by
            rw [fram_pm_init_copy, if_neg hs]
            simp only [← hnl, if_neg hn, if_pos hr]
          rw [e]
          refine ⟨⟨fun h => by simp at h, fun h => ?_⟩, fun h => by simp at h⟩
          have := (h src (List.mem_cons_self _ _)).2.2.2
          omega
        · have e : fram_pm_init_copy ds (src :: rest) acc
              = fram_pm_init_copy ds rest (acc ++ [src]) := by
            rw [fram_pm_init_copy, if_neg hs]
            simp only [← hnl, if_neg hn, if_neg hr]
          rw [e]
          obtain ⟨i1, i2⟩ := ih (acc ++ [src])
          have hok : spec_entry_ok ds src := by
            have := (not_iff_not.mpr hnl2).mp hn
            rw [not_not] at this
            exact ⟨this.1, this.2, by omega, by omega⟩
          refine ⟨⟨fun h e he => ?_, fun h => ?_⟩, fun h => ?_⟩
          · rcases List.mem_cons.mp he with h1 | h1
            · rw [h1]
              exact hok
            · exact i1.mp h e h1
          · exact i1.mpr (fun e he => h e (List.mem_cons_of_mem _ he))
          · rw [i2 h, List.append_assoc]
            rfl

/-- The second loop of `fram_pm_init` finds an overlap exactly when two
entries of an acceptable table overlap. -/
theorem pm_init_overlap_spec (ds : Nat) (hds : ds < U32) :
    ∀ (l : List fram_partition_t), (∀ e, e ∈ l → spec_entry_ok ds e) →
      (fram_pm_init_overlap l = false ↔ l.Pairwise spec_ranges_disjoint) := by
  intro l
  induction l with
  | nil =>
    intro _
    exact ⟨fun _ => List.Pairwise.nil, fun _ => rfl⟩
  | cons a rest ih =>
    intro hok
    have ha := hok a (List.mem_cons_self _ _)
    have hrest : ∀ e, e ∈ rest → spec_entry_ok ds e :=
      fun e he => hok e (List.mem_cons_of_mem _ he)
    rw [U32_eq] at hds
    have hpair : ∀ b, b ∈ rest →
        (fram_pm_ranges_overlap a.offset ((a.offset + a.size) % U32)
          b.offset ((b.offset + b.size) % U32) = false ↔ spec_ranges_disjoint a b) := by
      intro b hb
      have hb2 := hrest b hb
      have e1 : (a.offset + a.size) % U32 = a.offset + a.size :=
        Nat.mod_eq_of_lt (by rw [U32_eq]; have := ha.2.2.2; omega)
      have e2 : (b.offset + b.size) % U32 = b.offset + b.size :=
        Nat.mod_eq_of_lt (by rw [U32_eq]; have := hb2.2.2.2; omega)
      rw [e1, e2]
      unfold fram_pm_ranges_overlap spec_ranges_disjoint
      simp only [Bool.and_eq_false_imp, decide_eq_true_eq, decide_eq_false_iff_not]
      omega
    rw [fram_pm_init_overlap, Bool.or_eq_false_iff, List.pairwise_cons, ih hrest]
    constructor
    · rintro ⟨h1, h2⟩
      refine ⟨fun b hb => (hpair b hb).mp ?_, h2⟩
      by_contra hc
      have : rest.any (fun b => fram_pm_ranges_overlap a.offset ((a.offset + a.size) % U32)
          b.offset ((b.offset + b.size) % U32)) = true :=
        List.any_eq_true.mpr ⟨b, hb, by simpa using hc⟩
      rw [h1] at this
      exact absurd this (by decide)
    · rintro ⟨h1, h2⟩
      refine ⟨?_, h2⟩
      rw [List.any_eq_false]
      intro b hb
      rw [(hpair b hb).mpr (h1 b hb)]
      decide

/-- C18 (amended): partition table validation. On a device of non-zero size,
`fram_pm_init` with `count` entries returns `ESP_OK` iff `1 ≤ count ≤ 16`,
every entry has a name of 1 to 15 bytes, `size > 0` and `offset + size` within
the device, and every two entries occupy byte ranges that do not overlap
(ranges that merely touch are accepted). On `ESP_OK` the manager holds exactly
the given entries in order. Otherwise, when `count` is within 1..16,
`fram_pm_count` is 0 and `fram_pm_find` returns `NULL` for every name; when
`count` is 0 or greater than 16 the call returns `ESP_ERR_INVALID_SIZE` and
leaves the manager object as it was. -/
theorem pm_init_validates (pm : fram_pm_t) (dev : fram_dev_t) (parts : List fram_partition_t)
    (count : Nat) (hsize : fram_dev_get_size dev ≠ 0) (hlt : fram_dev_get_size dev < U32) :
    ((fram_pm_init pm dev parts count).1 = ESP_OK
      ↔ spec_table_ok (fram_dev_get_size dev) parts count) ∧
    ((fram_pm_init pm dev parts count).1 = ESP_OK →
      fram_pm_count (fram_pm_init pm dev parts count).2 = count ∧
      (∀ i, i < count → fram_pm_get (fram_pm_init pm dev parts count).2 i = parts.get? i) ∧
      (fram_pm_init pm dev parts count).2.initialized = true ∧
      (fram_pm_init pm dev parts count).2.dev = dev) ∧
    ((fram_pm_init pm dev parts count).1 ≠ ESP_OK → 1 ≤ count → count ≤ 16 →
      fram_pm_count (fram_pm_init pm dev parts count).2 = 0 ∧
      ∀ name, fram_pm_find (fram_pm_init pm dev parts count).2 name = none) ∧
    (count = 0 ∨ 16 < count →
      fram_pm_init pm dev parts count = (ESP_ERR_INVALID_SIZE, pm)) := by
  have h16 : FRAM_PART_MAX = 16 := rfl
  by_cases hc : count = 0 ∨ count > FRAM_PART_MAX
  · have e : fram_pm_init pm dev parts count = (ESP_ERR_INVALID_SIZE, pm) := by
      rw [fram_pm_init, if_pos hc]
    rw [e]
    refine ⟨⟨fun h => by simp at h, fun h => ?_⟩, fun h => by simp at h,
      fun _ h1 h2 => ?_, fun _ => rfl⟩
    · have := h.1
      have := h.2.1
      omega
    · omega
  · obtain ⟨c1, c2⟩ := pm_init_copy_spec (fram_dev_get_size dev) (parts.take count) []
    by_cases hcopy : (fram_pm_init_copy (fram_dev_get_size dev) (parts.take count) []).1 = ESP_OK
    · have hall := c1.mp hcopy
      have hl := c2 hcopy
      rw [List.nil_append] at hl
      have hov := pm_init_overlap_spec (fram_dev_get_size dev) hlt (parts.take count) hall
      by_cases ho : fram_pm_init_overlap (parts.take count) = true
      · have e : fram_pm_init pm dev parts count = (ESP_ERR_INVALID_STATE,
            { dev := dev, partitions := parts.take count, partition_count := 0,
              initialized := false }) := by
          rw [fram_pm_init, if_neg hc, if_neg hsize]
          simp only [hcopy, hl, ho, ne_eq, not_true_eq_false, if_false, if_true]
        rw [e]
        refine ⟨⟨fun h => by simp at h, fun h => ?_⟩, fun h => by simp at h,
          fun _ _ _ => ⟨rfl, fun name => ?_⟩, fun h => absurd h hc⟩
        · have := hov.mpr h.2.2.2
          rw [ho] at this
          exact absurd this (by decide)
        · simp [fram_pm_find]
      · have ho2 : fram_pm_init_overlap (parts.take count) = false := by
          simpa using ho
        have e : fram_pm_init pm dev parts count = (ESP_OK,
            { dev := dev, partitions := parts.take count, partition_count := count,
              initialized := true }) := by
          rw [fram_pm_init, if_neg hc, if_neg hsize]
          simp only [hcopy, hl, ho2, ne_eq, not_true_eq_false, if_false, Bool.false_eq_true]
        rw [e]
        refine ⟨⟨fun _ => ⟨by omega, by omega, hall, hov.mp ho2⟩, fun _ => rfl⟩,
          fun _ => ⟨rfl, fun i hi => ?_, rfl, rfl⟩, fun h => absurd rfl h,
          fun h => absurd h hc⟩
        show (if i ≥ count then none else (parts.take count).get? i) = parts.get? i
        rw [if_neg (by omega), List.get?_eq_getElem?, List.get?_eq_getElem?,
          List.getElem?_take_of_lt hi]
    · have e : fram_pm_init pm dev parts count =
          ((fram_pm_init_copy (fram_dev_get_size dev) (parts.take count) []).1,
            { dev := dev
              partitions := (fram_pm_init_copy (fram_dev_get_size dev) (parts.take count) []).2
              partition_count := 0, initialized := false }) := by
        rw [fram_pm_init, if_neg hc, if_neg hsize]
        simp only [hcopy, ne_eq, not_false_eq_true, if_true]
      rw [e]
      refine ⟨⟨fun h => absurd h hcopy, fun h => absurd (c1.mpr h.2.2.1) hcopy⟩,
        fun h => absurd h hcopy, fun _ _ _ => ⟨rfl, fun name => ?_⟩, fun h => absurd h hc⟩
      simp [fram_pm_find]

/-- Witness for C18: `fram_pm_init` as `setUp` of `test_fram.c` calls it, with
the three partitions of `setup_partitions` on the 32 KiB mock device. -/
theorem pm_init_validates_witness :
    (fram_pm_init example_pm0 (mock_dev (fun _ => 0xFF) 32768) example_parts 3).1 = ESP_OK ∧
    fram_pm_count (fram_pm_init example_pm0 (mock_dev (fun _ => 0xFF) 32768) example_parts 3).2
      = 3 ∧
    fram_pm_get (fram_pm_init example_pm0 (mock_dev (fun _ => 0xFF) 32768) example_parts 3).2 2
      = example_parts.get? 2 := by
  have hw := pm_init_validates example_pm0 (mock_dev (fun _ => 0xFF) 32768) example_parts 3
    (by decide) (by decide)
  have hok : spec_table_ok (fram_dev_get_size (mock_dev (fun _ => 0xFF) 32768)) example_parts 3 := by
    refine ⟨by decide, by decide, ?_, ?_⟩
    · intro e he
      have h : e = example_ring_part ∨ e = example_vslot_part ∨ e = example_kvs_part := by
        simpa [example_parts] using he
      rcases h with h | h | h <;> subst h <;>
        exact ⟨by decide, by decide, by decide, by decide⟩
    · simp [example_parts, spec_ranges_disjoint, example_ring_part, example_vslot_part,
        example_kvs_part]
  have h1 := hw.1.mpr hok
  exact ⟨h1, (hw.2.1 h1).1, (hw.2.1 h1).2.1 2 (by decide)⟩

/-- Counterexample to C18 as stated: a refused `count` leaves the manager
object as it was. On the initialised example manager with its three
partitions, `fram_pm_init` with `count = 0` on the 32 KiB device returns
`ESP_ERR_INVALID_SIZE`, and afterwards `fram_pm_count` is 3 and `fram_pm_find`
still finds the partition `"ring"`. -/
theorem pm_init_validates_counterexample :
    fram_dev_get_size example_pm.dev ≠ 0 ∧
    (fram_pm_init example_pm example_pm.dev example_parts 0).1 = ESP_ERR_INVALID_SIZE ∧
    fram_pm_count (fram_pm_init example_pm example_pm.dev example_parts 0).2 = 3 ∧
    fram_pm_find (fram_pm_init example_pm example_pm.dev example_parts 0).2
      [0x72, 0x69, 0x6E, 0x67] = some example_ring_part := by
  refine ⟨by decide, rfl, rfl, ?_⟩
  decide

/-! ## The superblock write before its publish point -/

set_option maxRecDepth 8000 in
/-- The staged write once the two reads are known. -/
theorem superblock_staged_eq (dev : fram_dev_t) (base : Nat) (sb : fram_superblock_t)
    (ea eb : esp_err_t) (da db : List Nat) (dev1 dev2 : fram_dev_t)
    (h1 : fram_dev_read dev base SUPERBLOCK_SIZE = (ea, da, dev1))
    (h2 : fram_dev_read dev1 ((base + SUPERBLOCK_SIZE) % U32) SUPERBLOCK_SIZE = (eb, db, dev2))
    (hm : sb.magic = FRAM_SUPERBLOCK_MAGIC) (hv : sb.version = FRAM_SUPERBLOCK_VERSION)
    (hs : sb.size_bytes = dev.hal.size_bytes) (hc : sb.count ≤ FRAM_PART_MAX)
    (sel : Nat × Nat)
    (hsel : fram_superblock_write_select
      (if ea = ESP_OK then fram_superblock_valid (fram_superblock_of_bytes da) dev.hal.size_bytes
        else false)
      (if eb = ESP_OK then fram_superblock_valid (fram_superblock_of_bytes db) dev.hal.size_bytes
        else false)
      (fram_superblock_of_bytes da) (fram_superblock_of_bytes db) = sel) :
    fram_superblock_write_staged dev base sb =
      ((fram_dev_write dev2 (fram_superblock_offset base sel.1)
          (fram_superblock_write_temp sb sel.2).to_bytes).1,
        fram_superblock_offset base sel.1,
        (fram_dev_write dev2 (fram_superblock_offset base sel.1)
          (fram_superblock_write_temp sb sel.2).to_bytes).2) := by
  have hnc : ¬ sb.count > FRAM_PART_MAX := Nat.not_lt.mpr hc
  unfold fram_superblock_write_staged
  rw [if_neg (by simp [hm, hv]), if_neg (by simp [hs, fram_dev_get_size, hnc])]
  simp only [h1, h2, fram_dev_get_size, hsel]

set_option maxRecDepth 8000 in
/-- The function `fram_superblock_write` is its staged part followed by the
write of the commit byte. -/
theorem superblock_write_of_staged (dev : fram_dev_t) (base : Nat) (sb : fram_superblock_t)
    (hm : sb.magic = FRAM_SUPERBLOCK_MAGIC) (hv : sb.version = FRAM_SUPERBLOCK_VERSION)
    (hs : sb.size_bytes = dev.hal.size_bytes) (hc : sb.count ≤ FRAM_PART_MAX) :
    fram_superblock_write dev base sb =
      if (fram_superblock_write_staged dev base sb).1 ≠ ESP_OK then
        ((fram_superblock_write_staged dev base sb).1,
          (fram_superblock_write_staged dev base sb).2.2)
      else fram_dev_write (fram_superblock_write_staged dev base sb).2.2
        (((fram_superblock_write_staged dev base sb).2.1 + SUPERBLOCK_COMMIT_OFFSET) % U32)
        [FRAM_SUPERBLOCK_COMMIT] := by
  rw [superblock_write_eq dev base sb _ _ _ _ _ _ rfl rfl hm hv hs hc _ rfl,
    superblock_staged_eq dev base sb _ _ _ _ _ _ rfl rfl hm hv hs hc _ rfl]

/-- The record written with `commit = 0` is not valid. -/
theorem superblock_temp_invalid (sb : fram_superblock_t) (q size : Nat) :
    fram_superblock_valid (fram_superblock_write_temp sb q) size = false := by
  have hcm : (fram_superblock_write_temp sb q).commit ≠ FRAM_SUPERBLOCK_COMMIT := by
    rw [temp_eq]
    show (0 : Nat) ≠ FRAM_SUPERBLOCK_COMMIT
    decide
  unfold fram_superblock_valid
  by_cases h1 : (fram_superblock_write_temp sb q).magic ≠ FRAM_SUPERBLOCK_MAGIC ∨
      (fram_superblock_write_temp sb q).version ≠ FRAM_SUPERBLOCK_VERSION
  · rw [if_pos h1]
  · rw [if_neg h1, if_pos hcm]

/-- The media after the full-record write at copy offset `off`: the target
copy holds the record with `commit = 0`. -/
theorem superblock_staged_target (mem : Nat → Nat) (off : Nat) (sb : fram_superblock_t)
    (q size : Nat)
    (hm : sb.magic = FRAM_SUPERBLOCK_MAGIC) (hv : sb.version = FRAM_SUPERBLOCK_VERSION)
    (hs : sb.size_bytes = size) (hsz : size < U32) (hc : sb.count ≤ FRAM_PART_MAX)
    (hp : sb.parts.length = 448) (hq : q < U32) :
    superblock_at (mem_write mem off (fram_superblock_write_temp sb q).to_bytes) off =
      fram_superblock_write_temp sb q := by
  have hwf := temp_wf sb q 0 size hm hv hs hsz hc hp hq (by decide)
  have hz : ({ fram_superblock_write_temp sb q with commit := 0 } : fram_superblock_t)
      = fram_superblock_write_temp sb q := by rw [temp_commit_eq, temp_eq]
  rw [hz] at hwf
  have hl := temp_to_bytes_length sb q hp
  unfold superblock_at
  have e : SUPERBLOCK_SIZE = (fram_superblock_write_temp sb q).to_bytes.length := by
    rw [hl]
    rfl
  rw [e, mem_read_write_same]
  exact of_bytes_to_bytes _ hwf

/-- The media after the full-record write at copy offset `off`: the other copy
is unchanged. -/
theorem superblock_staged_other (mem : Nat → Nat) (off other : Nat) (sb : fram_superblock_t)
    (q : Nat) (hp : sb.parts.length = 448)
    (hdis : other + SUPERBLOCK_SIZE ≤ off ∨ off + SUPERBLOCK_SIZE ≤ other) :
    superblock_at (mem_write mem off (fram_superblock_write_temp sb q).to_bytes) other =
      superblock_at mem other := by
  have hl := temp_to_bytes_length sb q hp
  unfold superblock_at
  simp only [SUPERBLOCK_SIZE] at *
  rw [mem_read_write_disjoint _ _ _ _ _ (by rw [hl]; omega)]

set_option maxRecDepth 8000 in
/-- On a working device with room for both copies, the staged part of
`fram_superblock_write` succeeds and leaves the record with `commit = 0` in
the selected copy. -/
theorem superblock_staged_both (dev : fram_dev_t) (mem : Nat → Nat) (size base : Nat)
    (sb : fram_superblock_t)
    (hd : DevOK dev mem size) (hr : base + 2 * SUPERBLOCK_SIZE ≤ size)
    (hm : sb.magic = FRAM_SUPERBLOCK_MAGIC) (hv : sb.version = FRAM_SUPERBLOCK_VERSION)
    (hs : sb.size_bytes = size) (hc : sb.count ≤ FRAM_PART_MAX)
    (hp : sb.parts.length = 448) (sel : Nat × Nat)
    (hsel : fram_superblock_write_select
            (fram_superblock_valid (superblock_at mem base) size)
            (fram_superblock_valid (superblock_at mem (base + SUPERBLOCK_SIZE)) size)
            (superblock_at mem base) (superblock_at mem (base + SUPERBLOCK_SIZE)) = sel) :
    ∃ dev1, fram_superblock_write_staged dev base sb
        = (ESP_OK, base + SUPERBLOCK_SIZE * sel.1, dev1) ∧
      DevOK dev1 (mem_write mem (base + SUPERBLOCK_SIZE * sel.1)
        (fram_superblock_write_temp sb sel.2).to_bytes) size := by
  have h472 : SUPERBLOCK_SIZE = 472 := rfl
  have hlt := hd.size_lt
  rw [U32_eq] at hlt
  obtain ⟨dev1, h1, hd1⟩ := fram_dev_read_ok dev mem size base SUPERBLOCK_SIZE hd
    (by decide) (by omega)
  have hB : (base + SUPERBLOCK_SIZE) % U32 = base + SUPERBLOCK_SIZE :=
    Nat.mod_eq_of_lt (by rw [U32_eq]; omega)
  obtain ⟨dev2, h2, hd2⟩ := fram_dev_read_ok dev1 mem size (base + SUPERBLOCK_SIZE)
    SUPERBLOCK_SIZE hd1 (by decide) (by omega)
  have ht : sel.1 ≤ 1 := by rw [← hsel]; exact select_fst_le _ _ _ _
  have hoff := superblock_offset_idx base sel.1 ht (by rw [U32_eq]; omega)
  have hmul : SUPERBLOCK_SIZE * sel.1 ≤ 472 := by
    rw [h472]; omega
  have hl := temp_to_bytes_length sb sel.2 hp
  obtain ⟨dev3, h3, hd3⟩ := fram_dev_write_ok dev2 mem size (base + SUPERBLOCK_SIZE * sel.1)
    (fram_superblock_write_temp sb sel.2).to_bytes hd2 (by rw [hl]; decide)
    (by rw [hl]; omega)
  refine ⟨dev3, ?_, hd3⟩
  have hnc : ¬ sb.count > FRAM_PART_MAX := Nat.not_lt.mpr hc
  unfold fram_superblock_write_staged
  rw [if_neg (by simp [hm, hv]), if_neg (by simp [hs, fram_dev_get_size, hd.size_eq, hnc])]
  simp only [h1, hB, h2, fram_dev_get_size, hd.size_eq, if_true]
  have hsel2 : fram_superblock_write_select
      (fram_superblock_valid (fram_superblock_of_bytes (mem_read mem base SUPERBLOCK_SIZE)) size)
      (fram_superblock_valid (fram_superblock_of_bytes
        (mem_read mem (base + SUPERBLOCK_SIZE) SUPERBLOCK_SIZE)) size)
      (fram_superblock_of_bytes (mem_read mem base SUPERBLOCK_SIZE))
      (fram_superblock_of_bytes (mem_read mem (base + SUPERBLOCK_SIZE) SUPERBLOCK_SIZE))
      = sel := hsel
  simp only [hsel2, hoff, h3]

set_option maxRecDepth 8000 in
/-- C11 (amended): the superblock write never disturbs the live copy, unless
both copies are valid with equal sequence numbers. On a working device with
room for both copies, for every device content on which `fram_superblock_read`
returns `ESP_OK` with `X` and on which the two copies are not both valid with
the same `seq`, and every accepted superblock `sb`: the full-record write of
`fram_superblock_write` (with `commit = 0`) succeeds on the copy that the read
did not select, and in the state reached after it and before the commit-byte
write `fram_superblock_read` still returns `ESP_OK` with `X`; the function
then only has the commit byte left to write. -/
theorem superblock_write_keeps_live (dev : fram_dev_t) (mem : Nat → Nat) (size base : Nat)
    (sb X : fram_superblock_t)
    (hd : DevOK dev mem size) (hr : base + 2 * SUPERBLOCK_SIZE ≤ size)
    (hm : sb.magic = FRAM_SUPERBLOCK_MAGIC) (hv : sb.version = FRAM_SUPERBLOCK_VERSION)
    (hs : sb.size_bytes = size) (hc : sb.count ≤ FRAM_PART_MAX)
    (hp : sb.parts.length = 448)
    (hread1 : (fram_superblock_read dev base).1 = ESP_OK)
    (hread2 : (fram_superblock_read dev base).2.1 = some X)
    (htie : ¬ (fram_superblock_valid (superblock_at mem base) size = true ∧
      fram_superblock_valid (superblock_at mem (base + SUPERBLOCK_SIZE)) size = true ∧
      (superblock_at mem base).seq = (superblock_at mem (base + SUPERBLOCK_SIZE)).seq)) :
    (fram_superblock_write_staged dev base sb).1 = ESP_OK ∧
    (fram_superblock_read (fram_superblock_write_staged dev base sb).2.2 base).1 = ESP_OK ∧
    (fram_superblock_read (fram_superblock_write_staged dev base sb).2.2 base).2.1 = some X ∧
    fram_superblock_write dev base sb =
      fram_dev_write (fram_superblock_write_staged dev base sb).2.2
        (((fram_superblock_write_staged dev base sb).2.1 + SUPERBLOCK_COMMIT_OFFSET) % U32)
        [FRAM_SUPERBLOCK_COMMIT] := by
  have h472 : SUPERBLOCK_SIZE = 472 := rfl
  obtain ⟨dev1, hd1, hrd⟩ := superblock_read_both dev mem size base hd hr
  rw [hrd] at hread1 hread2
  generalize hsel : fram_superblock_write_select
      (fram_superblock_valid (superblock_at mem base) size)
      (fram_superblock_valid (superblock_at mem (base + SUPERBLOCK_SIZE)) size)
      (superblock_at mem base) (superblock_at mem (base + SUPERBLOCK_SIZE)) = sel
  obtain ⟨devS, hst, hdS⟩ := superblock_staged_both dev mem size base sb hd hr hm hv hs hc hp
    sel hsel
  obtain ⟨dev2, hd2, hrd2⟩ := superblock_read_both devS _ size base hdS hr
  have hq : sel.2 < U32 := by rw [← hsel]; exact select_snd_lt _ _ _ _
  have hwr := superblock_write_of_staged dev base sb hm hv (by rw [hd.size_eq]; exact hs) hc
  rw [hst] at hwr ⊢
  simp only [ne_eq, not_true_eq_false, if_false] at hwr
  have key : fram_superblock_read devS base = (ESP_OK, some X, dev2) := by
    rw [hrd2]
    have hcases := select_cases (fram_superblock_valid (superblock_at mem base) size)
      (fram_superblock_valid (superblock_at mem (base + SUPERBLOCK_SIZE)) size)
      (superblock_at mem base) (superblock_at mem (base + SUPERBLOCK_SIZE))
    rw [hsel] at hcases
    rcases hcases with ⟨h0, _, hb2, hle⟩ | ⟨h1, hav, _, hlt⟩
    · have hT := superblock_staged_target mem base sb sel.2 size hm hv hs hd.size_lt hc hp hq
      have hO := superblock_staged_other mem base (base + SUPERBLOCK_SIZE) sb sel.2 hp
        (Or.inr (Nat.le_refl _))
      rw [h0, Nat.mul_zero, Nat.add_zero, hT, hO, superblock_temp_invalid]
      cases hvB : fram_superblock_valid (superblock_at mem (base + SUPERBLOCK_SIZE)) size
      · have hvA := (hb2 hvB).2
        rw [hvA, hvB] at hread1
        simp at hread1
      · cases hvA : fram_superblock_valid (superblock_at mem base) size
        · rw [hvA, hvB] at hread2
          simp only [Bool.not_false, Bool.not_true, Bool.and_false, Bool.false_eq_true,
            if_false, Bool.false_and, Option.some.injEq] at hread2
          rw [hread2]
          simp
        · have hle2 := hle hvA
          have hne : (superblock_at mem base).seq
              ≠ (superblock_at mem (base + SUPERBLOCK_SIZE)).seq :=
            fun e => htie ⟨hvA, hvB, e⟩
          have hnge : ¬ (superblock_at mem base).seq
              ≥ (superblock_at mem (base + SUPERBLOCK_SIZE)).seq := by omega
          rw [hvA, hvB] at hread2
          simp only [hnge, Bool.not_true, Bool.false_and, Bool.false_eq_true, if_false,
            decide_False, Bool.or_self, Bool.and_false, Option.some.injEq] at hread2
          rw [hread2]
          simp
    · have hT := superblock_staged_target mem (base + SUPERBLOCK_SIZE) sb sel.2 size hm hv hs
        hd.size_lt hc hp hq
      have hO := superblock_staged_other mem (base + SUPERBLOCK_SIZE) base sb sel.2 hp
        (Or.inl (Nat.le_refl _))
      rw [h1, Nat.mul_one, hT, hO, superblock_temp_invalid, hav]
      rw [hav] at hread2
      cases hvB : fram_superblock_valid (superblock_at mem (base + SUPERBLOCK_SIZE)) size
      · rw [hvB] at hread2
        simp only [Bool.not_false, Bool.not_true, Bool.and_false, Bool.false_eq_true,
          if_false, Bool.true_or, Bool.and_self, if_true, Bool.false_and,
          Option.some.injEq] at hread2
        rw [hread2]
        simp
      · have hge : (superblock_at mem base).seq
            ≥ (superblock_at mem (base + SUPERBLOCK_SIZE)).seq := by
          have := hlt hvB
          omega
        rw [hvB] at hread2
        simp only [hge, decide_True, Bool.not_true, Bool.and_self, Bool.false_eq_true, if_false,
          Bool.or_true, if_true, Bool.false_and, Option.some.injEq] at hread2
        rw [hread2]
        simp
  exact ⟨rfl, by rw [key], by rw [key], hwr⟩

/-- Witness for C11: the device of 944 bytes whose copy A is valid and whose
copy B is erased; the staged write of `example_new_superblock` goes to copy B
and `fram_superblock_read` still returns copy A. -/
theorem superblock_write_keeps_live_witness :
    (fram_superblock_write_staged example_wrap_dev 0 example_new_superblock).1 = ESP_OK ∧
    (fram_superblock_read
      (fram_superblock_write_staged example_wrap_dev 0 example_new_superblock).2.2 0).1
        = ESP_OK ∧
    (fram_superblock_read
      (fram_superblock_write_staged example_wrap_dev 0 example_new_superblock).2.2 0).2.1
        = some example_old_superblock ∧
    fram_superblock_write example_wrap_dev 0 example_new_superblock =
      fram_dev_write (fram_superblock_write_staged example_wrap_dev 0 example_new_superblock).2.2
        (((fram_superblock_write_staged example_wrap_dev 0 example_new_superblock).2.1
          + SUPERBLOCK_COMMIT_OFFSET) % U32) [FRAM_SUPERBLOCK_COMMIT] := by
  obtain ⟨dev1, _, hrd⟩ := superblock_read_both example_wrap_dev _ 944 0 example_wrap_dev_ok
    (by decide)
  have hB := example_wrap_copy_b
  rw [example_wrap_copy_a, hB, example_old_valid] at hrd
  simp only [Bool.not_true, Bool.not_false, Bool.and_true, Bool.false_eq_true, if_false,
    Bool.true_or, Bool.and_self, if_true] at hrd
  exact superblock_write_keeps_live example_wrap_dev _ 944 0 example_new_superblock
    example_old_superblock example_wrap_dev_ok (by decide) rfl rfl rfl (by decide)
    example_new_parts (by rw [hrd]) (by rw [hrd])
    (fun h => by
      have h2 := h.2.1
      rw [hB] at h2
      exact absurd h2 (by decide))

/-! ### A device whose two copies carry the same sequence number -/

theorem example_tie_dev_ok : DevOK example_tie_dev example_tie_mem 944 :=
  ⟨rfl, rfl, rfl, rfl, by decide, rfl⟩

theorem example_one_parts : example_sb_one.parts.length = 448 :=
  List.length_replicate _ _

theorem example_tie_copy_b :
    superblock_at example_tie_mem (0 + SUPERBLOCK_SIZE) =
      { fram_superblock_write_temp example_new_superblock 7
          with commit := FRAM_SUPERBLOCK_COMMIT } :=
  superblock_media_target _ 472 example_new_superblock 7 944 rfl rfl rfl (by decide) (by decide)
    example_new_parts (by decide)

theorem example_tie_copy_a :
    superblock_at example_tie_mem 0 =
      { fram_superblock_write_temp example_sb_one 7 with commit := FRAM_SUPERBLOCK_COMMIT } := by
  have h1 := superblock_media_other (mem_write (mem_write (fun _ => 0xFF)
    0 (fram_superblock_write_temp example_sb_one 7).to_bytes)
    (0 + SUPERBLOCK_COMMIT_OFFSET) [FRAM_SUPERBLOCK_COMMIT]) 472 0 example_new_superblock 7
    example_new_parts (Or.inl (by decide))
  have h2 := superblock_media_target (fun _ => 0xFF) 0 example_sb_one 7 944 rfl rfl rfl
    (by decide) (by decide) example_one_parts (by decide)
  unfold example_tie_mem
  rw [h1, h2]

/-- Counterexample for C11: both copies of `example_tie_dev` are valid with
sequence number 7. `fram_superblock_read` returns copy A (one partition);
the staged write of `fram_superblock_write` overwrites copy A, and a read at
that point, before the commit byte is written, returns copy B (two
partitions), not the record returned before the write began. -/
theorem superblock_write_keeps_live_counterexample :
    (fram_superblock_read example_tie_dev 0).1 = ESP_OK ∧
    (fram_superblock_read example_tie_dev 0).2.1 =
      some { fram_superblock_write_temp example_sb_one 7
              with commit := FRAM_SUPERBLOCK_COMMIT } ∧
    (fram_superblock_write_staged example_tie_dev 0 example_new_superblock).1 = ESP_OK ∧
    (fram_superblock_read
      (fram_superblock_write_staged example_tie_dev 0 example_new_superblock).2.2 0).1
        = ESP_OK ∧
    (fram_superblock_read
      (fram_superblock_write_staged example_tie_dev 0 example_new_superblock).2.2 0).2.1 =
      some { fram_superblock_write_temp example_new_superblock 7
              with commit := FRAM_SUPERBLOCK_COMMIT } ∧
    ({ fram_superblock_write_temp example_sb_one 7
        with commit := FRAM_SUPERBLOCK_COMMIT } : fram_superblock_t).count = 1 ∧
    ({ fram_superblock_write_temp example_new_superblock 7
        with commit := FRAM_SUPERBLOCK_COMMIT } : fram_superblock_t).count = 2 := by
  have hA := example_tie_copy_a
  have hB := example_tie_copy_b
  have vA := superblock_committed_valid example_sb_one 7 944 rfl rfl rfl (by decide)
  have vB := superblock_committed_valid example_new_superblock 7 944 rfl rfl rfl (by decide)
  have sA := committed_record_seq example_sb_one 7
  have sB := committed_record_seq example_new_superblock 7
  obtain ⟨dev1, _, hrd⟩ := superblock_read_both example_tie_dev _ 944 0 example_tie_dev_ok
    (by decide)
  rw [hA, hB, vA, vB, sA, sB] at hrd
  simp only [Bool.not_true, Bool.and_self, Bool.false_eq_true, if_false, ge_iff_le,
    le_refl, decide_True, Bool.or_true, Bool.and_true, if_true, Bool.false_and] at hrd
  have hsel : fram_superblock_write_select
      (fram_superblock_valid (superblock_at example_tie_mem 0) 944)
      (fram_superblock_valid (superblock_at example_tie_mem (0 + SUPERBLOCK_SIZE)) 944)
      (superblock_at example_tie_mem 0) (superblock_at example_tie_mem (0 + SUPERBLOCK_SIZE))
        = (0, 8) := by
    rw [hA, hB, vA, vB]
    unfold fram_superblock_write_select
    rw [sA, sB]
    decide
  obtain ⟨dev2, hst, hd2⟩ := superblock_staged_both example_tie_dev _ 944 0
    example_new_superblock example_tie_dev_ok (by decide) rfl rfl rfl (by decide)
    example_new_parts (0, 8) hsel
  have h0 : 0 + SUPERBLOCK_SIZE * ((0 : Nat), (8 : Nat)).1 = 0 := rfl
  rw [h0] at hst hd2
  obtain ⟨dev3, _, hrd2⟩ := superblock_read_both dev2 _ 944 0 hd2 (by decide)
  have tA := superblock_staged_target example_tie_mem 0 example_new_superblock 8 944
    rfl rfl rfl (by decide) (by decide) example_new_parts (by decide)
  have tB := superblock_staged_other example_tie_mem 0 (0 + SUPERBLOCK_SIZE)
    example_new_superblock 8 example_new_parts (Or.inr (by decide))
  have iA := superblock_temp_invalid example_new_superblock 8 944
  rw [tA, tB, hB, iA, vB] at hrd2
  simp only [Bool.not_true, Bool.not_false, Bool.and_false, Bool.false_and,
    Bool.false_eq_true, if_false] at hrd2
  refine ⟨by rw [hrd], by rw [hrd], by rw [hst], ?_, ?_, ?_, ?_⟩
  · rw [hst]
    show (fram_superblock_read dev2 0).1 = ESP_OK
    rw [hrd2]
  · rw [hst]
    show (fram_superblock_read dev2 0).2.1 = _
    rw [hrd2]
  · rw [temp_commit_eq]
    rfl
  · rw [temp_commit_eq]
    rfl

/-! ## Writes on a device that may fail -/

theorem DevOK.dev_any {dev : fram_dev_t} {mem : Nat → Nat} {size : Nat}
    (h : DevOK dev mem size) : DevAny dev mem size :=
  ⟨h.mutex_free, h.size_eq, h.size_lt, h.mem_eq⟩

theorem PmOK.pm_any {pm : fram_pm_t} {p : fram_partition_t} {pmem : Nat → Nat}
    (h : PmOK pm p pmem) : PmAny pm p pmem := by
  obtain ⟨mem, size, hd, hfit, hmem⟩ := h.device
  exact ⟨h.initialized, h.writable, mem, size, hd.dev_any, hfit, hmem⟩

theorem dev_any_record_error (dev : fram_dev_t) (mem : Nat → Nat) (size : Nat)
    (h : DevAny dev mem size) : DevAny (fram_dev_record_error dev) mem size := by
  obtain ⟨a, b, c, d⟩ := h
  unfold fram_dev_record_error
  simp only
  split <;> exact ⟨a, b, c, d⟩

theorem mem_write_take_chunks (mem : Nat → Nat) (addr c n : Nat) (data : List Nat) :
    mem_write (mem_write mem addr (data.take c)) (addr + c) ((data.drop c).take n) =
      mem_write mem addr (data.take (c + n)) := by
  by_cases hc : c ≤ (data.take (c + n)).length
  · have h := mem_write_chunks mem addr c (data.take (c + n)) hc
    rw [List.take_take, Nat.min_eq_left (Nat.le_add_right c n), List.drop_take,
      Nat.add_sub_cancel_left] at h
    exact h
  · rw [List.length_take] at hc
    have hl : data.length < c := by omega
    rw [List.drop_eq_nil_of_le (by omega), List.take_nil, mem_write_nil,
      List.take_of_length_le (by omega), List.take_of_length_le (by omega)]

/-- The chunk loop of `fram_dev_write` on a device that may fail: the bytes
of a prefix of the data are on the media, all of them exactly when the loop
returns `ESP_OK`. -/
theorem fram_dev_write_loop_any (size mt : Nat) (hmt : 0 < mt) :
    ∀ (fuel : Nat) (dev : fram_dev_t) (mem : Nat → Nat) (addr : Nat) (data : List Nat),
      DevAny dev mem size → data.length ≤ fuel → addr + data.length ≤ size →
      ∃ dev1 n, n ≤ data.length ∧
        DevAny (fram_dev_write_loop fuel dev addr data mt).2
          (mem_write mem addr (data.take n)) size ∧
        (fram_dev_write_loop fuel dev addr data mt).2 = dev1 ∧
        ((fram_dev_write_loop fuel dev addr data mt).1 = ESP_OK → n = data.length) ∧
        ((fram_dev_write_loop fuel dev addr data mt).1 ≠ ESP_OK → n < data.length) := by
  intro fuel
  induction fuel with
  | zero =>
    intro dev mem addr data hd hf _
    have h0 : data = [] := List.eq_nil_of_length_eq_zero (by omega)
    subst h0
    refine ⟨dev, 0, Nat.le_refl _, ?_, ?_, ?_, ?_⟩
    · simp only [fram_dev_write_loop, List.length_nil, if_true, List.take_nil, mem_write_nil]
      exact hd
    · simp [fram_dev_write_loop]
    · intro _; rfl
    · simp [fram_dev_write_loop]
  | succ fuel ih =>
    intro dev mem addr data hd hf hr
    by_cases h0 : data.length = 0
    · have h0 : data = [] := List.eq_nil_of_length_eq_zero h0
      subst h0
      refine ⟨dev, 0, Nat.le_refl _, ?_, ?_, ?_, ?_⟩
      · simp only [fram_dev_write_loop, List.length_nil, if_true, List.take_nil, mem_write_nil]
        exact hd
      · simp [fram_dev_write_loop]
      · intro _; rfl
      · simp [fram_dev_write_loop]
    · obtain ⟨hm, hse, hsl, hme⟩ := hd
      obtain ⟨c, hcdef⟩ : ∃ c, c = (if data.length > mt then mt else data.length) := ⟨_, rfl⟩
      have hchunk : 0 < c ∧ c ≤ data.length := by
        rw [hcdef]; split <;> omega
      obtain ⟨hc0, hcr⟩ := hchunk
      have hlt : (data.take c).length = c := by
        rw [List.length_take]; omega
      have hU : (addr + c) % U32 = addr + c := Nat.mod_eq_of_lt (by omega)
      rw [fram_dev_write_loop, if_neg h0]
      simp only [← hcdef, hU]
      by_cases hfail : fram_mock_should_fail
          { dev.hal.ctx with op_count := (dev.hal.ctx.op_count + 1) % U32 } = true
      · have hw : fram_hal_mock_write dev.hal addr (data.take c) =
            (ESP_FAIL, { dev.hal with
              ctx := { dev.hal.ctx with op_count := (dev.hal.ctx.op_count + 1) % U32 } }) := by
          unfold fram_hal_mock_write
          rw [if_neg (by omega), if_neg (by omega)]
          simp only [hfail, if_true]
        simp only [hw, ne_eq, reduceCtorEq, not_false_eq_true, if_true]
        refine ⟨_, 0, Nat.zero_le _, ?_, rfl, ?_, ?_⟩
        · rw [List.take_zero, mem_write_nil]
          exact dev_any_record_error _ _ _ ⟨hm, hse, hsl, hme⟩
        · intro h; cases h
        · intro _; omega
      · have hw : fram_hal_mock_write dev.hal addr (data.take c) =
            (ESP_OK, { dev.hal with ctx := { dev.hal.ctx with
              op_count := (dev.hal.ctx.op_count + 1) % U32,
              buffer := mem_write dev.hal.ctx.buffer addr (data.take c) } }) := by
          unfold fram_hal_mock_write
          rw [if_neg (by omega), if_neg (by omega)]
          simp only [hfail, Bool.false_eq_true, if_false]
        simp only [hw, ne_eq, not_true_eq_false, if_false]
        obtain ⟨dev2, n, hn, hd2, he2, hok2, hbad2⟩ := ih
          (fram_dev_record_success
            { dev with
              hal := { dev.hal with ctx := { dev.hal.ctx with
                op_count := (dev.hal.ctx.op_count + 1) % U32,
                buffer := mem_write dev.hal.ctx.buffer addr (data.take c) } },
              write_count := (dev.write_count + 1) % U32 })
          (mem_write mem addr (data.take c)) (addr + c) (data.drop c)
          ⟨hm, hse, hsl, by rw [← hme]; rfl⟩
          (by rw [List.length_drop]; omega) (by rw [List.length_drop]; omega)
        rw [List.length_drop] at hn hok2 hbad2
        rw [mem_write_take_chunks] at hd2
        refine ⟨dev2, c + n, by omega, hd2, he2, ?_, ?_⟩
        · intro h; have := hok2 h; omega
        · intro h; have := hbad2 h; omega

/-- `fram_dev_write` on a device that may fail: a prefix of the data is on
the media, all of it exactly when the call returns `ESP_OK`. -/
theorem fram_dev_write_any (dev : fram_dev_t) (mem : Nat → Nat) (size offset : Nat)
    (data : List Nat) (hd : DevAny dev mem size) (hlen : 0 < data.length)
    (hr : offset + data.length ≤ size) :
    ∃ n, n ≤ data.length ∧
      DevAny (fram_dev_write dev offset data).2 (mem_write mem offset (data.take n)) size ∧
      ((fram_dev_write dev offset data).1 = ESP_OK → n = data.length) ∧
      ((fram_dev_write dev offset data).1 ≠ ESP_OK → n < data.length) := by
  have hs := hd.size_eq
  have hmt : 0 < (if dev.hal.max_transfer ≠ 0 then dev.hal.max_transfer
      else dev.hal.size_bytes) := by
    split <;> omega
  obtain ⟨dev1, n, hn, h1, _, h2, h3⟩ := fram_dev_write_loop_any size _ hmt data.length dev mem
    offset data hd (Nat.le_refl _) hr
  have he : fram_dev_write dev offset data = fram_dev_write_loop data.length dev offset data
      (if dev.hal.max_transfer ≠ 0 then dev.hal.max_transfer else dev.hal.size_bytes) := by
    unfold fram_dev_write
    rw [if_neg (by omega), if_neg (by omega)]
    simp only [fram_dev_lock, hd.mutex_free, mutex_take, ne_eq, not_true_eq_false, if_false]
  rw [he]
  exact ⟨n, hn, h1, h2, h3⟩

/-- `fram_pm_write` inside a writable partition of a device that may fail: a
prefix of the data is on the media, all of it exactly when the call returns
`ESP_OK`; the partition table is unchanged. -/
theorem fram_pm_write_any (pm : fram_pm_t) (p : fram_partition_t) (pmem : Nat → Nat)
    (offset : Nat) (data : List Nat) (h : PmAny pm p pmem) (hlen : 0 < data.length)
    (hr : offset + data.length ≤ p.size) :
    ∃ n, n ≤ data.length ∧
      PmAny (fram_pm_write pm (some p) offset data).2 p (mem_write pmem offset (data.take n)) ∧
      ((fram_pm_write pm (some p) offset data).1 = ESP_OK → n = data.length) ∧
      ((fram_pm_write pm (some p) offset data).1 ≠ ESP_OK → n < data.length) := by
  obtain ⟨hi, hw, mem, size, hd, hfit, hview⟩ := h
  have hsz := hd.size_lt
  have hU : (p.offset + offset) % U32 = p.offset + offset :=
    Nat.mod_eq_of_lt (by omega)
  obtain ⟨n, hn, hd1, h1, h2⟩ := fram_dev_write_any pm.dev mem size (p.offset + offset) data hd
    hlen (by omega)
  have hvr : fram_pm_is_valid_range p offset data.length = true := by
    unfold fram_pm_is_valid_range
    rw [if_neg (by omega), if_neg (by omega)]
  have he : fram_pm_write pm (some p) offset data =
      ((fram_dev_write pm.dev (p.offset + offset) data).1,
        { pm with dev := (fram_dev_write pm.dev (p.offset + offset) data).2 }) := by
    simp only [fram_pm_write, hi, hvr, hU, hw, Bool.not_true, Bool.false_eq_true, if_false,
      ne_eq, not_true_eq_false]
  rw [he]
  refine ⟨n, hn, ⟨hi, hw, _, size, hd1, hfit, ?_⟩, h1, h2⟩
  intro i hi2
  have hl : (data.take n).length = n := by rw [List.length_take]; omega
  simp only [mem_write_apply, hl]
  by_cases hc : offset ≤ i ∧ i < offset + n
  · rw [if_pos (by omega), if_pos hc]
    congr 1
    omega
  · rw [if_neg (by omega), if_neg hc]
    exact hview i hi2

/-- The view of a partition only concerns the bytes of the partition. -/
theorem pm_ok_congr (pm : fram_pm_t) (p : fram_partition_t) (a b : Nat → Nat)
    (h : PmOK pm p a) (hab : ∀ i, i < p.size → a i = b i) : PmOK pm p b := by
  obtain ⟨hi, hw, mem, size, hd, hfit, hview⟩ := h
  exact ⟨hi, hw, mem, size, hd, hfit, fun i hi2 => (hview i hi2).trans (hab i hi2)⟩

/-- The partition bytes of a manager are those of its view. -/
theorem pm_any_media (pm : fram_pm_t) (p : fram_partition_t) (pmem : Nat → Nat)
    (h : PmAny pm p pmem) : ∀ i, i < p.size → pm_media pm p i = pmem i := by
  obtain ⟨_, _, mem, size, hd, _, hview⟩ := h
  intro i hi
  unfold pm_media
  rw [hd.mem_eq]
  exact hview i hi

/-- Arming the failure switch of the mock keeps the media. -/
theorem pm_set_fail_after_any (pm : fram_pm_t) (p : fram_partition_t) (pmem : Nat → Nat)
    (operations : Nat) (h : PmOK pm p pmem) : PmAny (pm_set_fail_after pm operations) p pmem := by
  obtain ⟨hi, hw, mem, size, hd, hfit, hview⟩ := h
  exact ⟨hi, hw, mem, size, ⟨hd.mutex_free, hd.size_eq, hd.size_lt, hd.mem_eq⟩, hfit, hview⟩

theorem region_keep_refl (pmem : Nat → Nat) (so es c : Nat) : RegionKeep pmem pmem so es c :=
  Or.inl rfl

theorem region_keep_weak (pmem m : Nat → Nat) (so es c : Nat) (h : RegionKeep pmem m so es c) :
    (∀ a, a < so ∨ so + es ≤ a → m a = pmem a) ∧ (m c = pmem c ∨ m c = 0) := by
  rcases h with h | h
  · subst h
    exact ⟨fun _ _ => rfl, Or.inl rfl⟩
  · exact ⟨h.1, Or.inr h.2⟩

/-- The byte at `c` cleared. -/
theorem region_cleared_byte (pmem : Nat → Nat) (so es c : Nat) (h1 : so ≤ c) (h2 : c < so + es) :
    RegionCleared pmem (mem_write pmem c [0]) so es c := by
  refine ⟨fun a ha => mem_write_outside _ _ _ _ (by simp only [List.length_singleton]; omega),
    ?_⟩
  have := mem_write_inside pmem c [0] 0 (by decide)
  simpa using this

/-- Clearing the byte at `c`, or failing to. -/
theorem region_keep_clear (pmem : Nat → Nat) (so es c n : Nat) (h1 : so ≤ c) (h2 : c < so + es) :
    RegionKeep pmem (mem_write pmem c ([0].take n)) so es c := by
  cases n with
  | zero =>
    rw [List.take_zero, mem_write_nil]
    exact region_keep_refl _ _ _ _
  | succ n =>
    have ht : ([0] : List Nat).take (n + 1) = [0] := by
      rw [List.take_of_length_le (by simp)]
    rw [ht]
    exact Or.inr (region_cleared_byte pmem so es c h1 h2)

/-- A write of a prefix of `data` inside the region and away from `c`. -/
theorem region_cleared_write (pmem m : Nat → Nat) (so es c off n : Nat) (data : List Nat)
    (h : RegionCleared pmem m so es c) (h1 : so ≤ off) (h2 : off + data.length ≤ so + es)
    (h3 : c < off ∨ off + data.length ≤ c) :
    RegionCleared pmem (mem_write m off (data.take n)) so es c := by
  have hl : (data.take n).length ≤ data.length := by
    rw [List.length_take]; exact Nat.min_le_right _ _
  refine ⟨fun a ha => ?_, ?_⟩
  · rw [mem_write_outside _ _ _ _ (by omega)]
    exact h.1 a ha
  · rw [mem_write_outside _ _ _ _ (by omega)]
    exact h.2

/-- A failed write of one byte leaves the media as it was. -/
theorem take_of_lt_one (x n : Nat) (h : n < [x].length) : ([x] : List Nat).take n = [] := by
  have : n = 0 := by simpa using h
  rw [this, List.take_zero]

theorem take_of_eq_length (data : List Nat) (n : Nat) (h : n = data.length) :
    data.take n = data := by
  rw [h, List.take_length]

set_option maxRecDepth 4000 in
/-- `fram_ring_append` on a device that may fail: when the call does not
return `ESP_OK` the ring object is unchanged, the media differs from the one
before the call at most inside the head slot, and the commit byte of the head
slot is zero unless the media is the one before the call. -/
theorem ring_append_any (ring : fram_ring_t) (p : fram_partition_t) (pm pm0 : fram_pm_t)
    (pmem pmem0 : Nat → Nat) (payload : List Nat) (now : Nat)
    (g : RingGeom ring p) (h0 : PmOK pm0 p pmem0) (h : PmAny pm p pmem)
    (hh : ring.head_slot < ring.capacity)
    (hfail : (fram_ring_append ring pm payload now).1 ≠ ESP_OK) :
    (fram_ring_append ring pm payload now).2.1 = ring ∧
    ∃ pmem1, PmAny (fram_ring_append ring pm payload now).2.2 p pmem1 ∧
      RegionKeep pmem pmem1 (ring.head_slot * ring.entry_size) ring.entry_size
        (ring.head_slot * ring.entry_size + RING_HEADER_SIZE + ring.max_payload) := by
  obtain ⟨ho, hco, hpo, hfit, hsz⟩ := ring_slot_offset_eq ring p pm0 pmem0 g h0 ring.head_slot hh
  rw [ho] at hpo
  have hes := g.entry_size
  have h24 : RING_HEADER_SIZE = 24 := rfl
  have hexp : (ring.head_slot + 1) * ring.entry_size
      = ring.head_slot * ring.entry_size + ring.entry_size := by
    rw [Nat.add_mul, Nat.one_mul]
  by_cases hbad : payload.length > ring.max_payload ∨ payload.length > UINT16_MAX
  · have he : fram_ring_append ring pm payload now = (ESP_ERR_INVALID_SIZE, ring, pm) := by
      unfold fram_ring_append
      simp only [g.ready, hbad, Bool.not_true, Bool.false_eq_true, if_false, if_true]
    rw [he]
    exact ⟨rfl, pmem, h, region_keep_refl _ _ _ _⟩
  · have hl : payload.length ≤ ring.max_payload := by omega
    have hl16 : payload.length ≤ UINT16_MAX := by omega
    have hhl := ring_to_bytes_length (ring_header_for ring.magic ring.head_seq now payload)
    obtain ⟨n0, _, hA0, hok0, hbad0⟩ := fram_pm_write_any pm p pmem
      (ring.head_slot * ring.entry_size + RING_HEADER_SIZE + ring.max_payload) [0] h
      (by decide) (by simp only [List.length_singleton]; omega)
    have hK0 := region_keep_clear pmem (ring.head_slot * ring.entry_size) ring.entry_size
      (ring.head_slot * ring.entry_size + RING_HEADER_SIZE + ring.max_payload) n0
      (by omega) (by omega)
    by_cases e0 : (fram_pm_write pm (some p)
        (ring.head_slot * ring.entry_size + RING_HEADER_SIZE + ring.max_payload) [0]).1 = ESP_OK
    swap
    · have he : fram_ring_append ring pm payload now =
          ((fram_pm_write pm (some p)
            (ring.head_slot * ring.entry_size + RING_HEADER_SIZE + ring.max_payload) [0]).1, ring,
           (fram_pm_write pm (some p)
            (ring.head_slot * ring.entry_size + RING_HEADER_SIZE + ring.max_payload) [0]).2) := by
        unfold fram_ring_append fram_ring_write_commit fram_ring_lock
        simp only [g.ready, g.mutex, mutex_take, g.part, hco, e0, hbad,
          Bool.not_true, Bool.false_eq_true, ne_eq, not_true_eq_false, not_false_eq_true,
          if_false, if_true]
      rw [he]
      exact ⟨rfl, _, hA0, hK0⟩
    have hC0 : RegionCleared pmem (mem_write pmem
        (ring.head_slot * ring.entry_size + RING_HEADER_SIZE + ring.max_payload)
        (List.take n0 [0])) (ring.head_slot * ring.entry_size) ring.entry_size
        (ring.head_slot * ring.entry_size + RING_HEADER_SIZE + ring.max_payload) := by
      rw [take_of_eq_length _ _ (hok0 e0)]
      exact region_cleared_byte pmem _ _ _ (by omega) (by omega)
    obtain ⟨n1, _, hA1, hok1, hbad1⟩ := fram_pm_write_any _ p _
      (ring.head_slot * ring.entry_size)
      (ring_header_for ring.magic ring.head_seq now payload).to_bytes hA0
      (by rw [hhl]; decide) (by rw [hhl]; omega)
    have hK1 := region_cleared_write pmem _ (ring.head_slot * ring.entry_size) ring.entry_size
      (ring.head_slot * ring.entry_size + RING_HEADER_SIZE + ring.max_payload)
      (ring.head_slot * ring.entry_size) n1
      (ring_header_for ring.magic ring.head_seq now payload).to_bytes hC0
      (Nat.le_refl _) (by rw [hhl]; omega) (Or.inr (by rw [hhl]; omega))
    have hhdr := ring_append_hdr_eq ring.magic ring.head_seq now payload hl16
    by_cases e1 : (fram_pm_write (fram_pm_write pm (some p)
        (ring.head_slot * ring.entry_size + RING_HEADER_SIZE + ring.max_payload) [0]).2 (some p)
        (ring.head_slot * ring.entry_size)
        (ring_header_for ring.magic ring.head_seq now payload).to_bytes).1 = ESP_OK
    swap
    · have he : fram_ring_append ring pm payload now =
          ((fram_pm_write (fram_pm_write pm (some p)
            (ring.head_slot * ring.entry_size + RING_HEADER_SIZE + ring.max_payload) [0]).2
            (some p) (ring.head_slot * ring.entry_size)
            (ring_header_for ring.magic ring.head_seq now payload).to_bytes).1, ring,
           (fram_pm_write (fram_pm_write pm (some p)
            (ring.head_slot * ring.entry_size + RING_HEADER_SIZE + ring.max_payload) [0]).2
            (some p) (ring.head_slot * ring.entry_size)
            (ring_header_for ring.magic ring.head_seq now payload).to_bytes).2) := by
        unfold fram_ring_append fram_ring_write_commit fram_ring_lock
        simp only [g.ready, g.mutex, mutex_take, g.part, hco, ho, e0, hbad, hhdr, e1,
          Bool.not_true, Bool.false_eq_true, ne_eq, not_true_eq_false, not_false_eq_true,
          false_and, if_false, if_true]
      rw [he]
      exact ⟨rfl, _, hA1, Or.inr hK1⟩
    by_cases hp0 : payload.length > 0
    · rw [if_pos hp0] at hhdr
      obtain ⟨n2, _, hA2, hok2, hbad2⟩ := fram_pm_write_any _ p _
        (ring.head_slot * ring.entry_size + RING_HEADER_SIZE) payload hA1 hp0 (by omega)
      have hK2 := region_cleared_write pmem _ (ring.head_slot * ring.entry_size) ring.entry_size
        (ring.head_slot * ring.entry_size + RING_HEADER_SIZE + ring.max_payload)
        (ring.head_slot * ring.entry_size + RING_HEADER_SIZE) n2 payload hK1
        (by omega) (by omega) (Or.inr (by omega))
      by_cases e2 : (fram_pm_write (fram_pm_write (fram_pm_write pm (some p)
          (ring.head_slot * ring.entry_size + RING_HEADER_SIZE + ring.max_payload) [0]).2
          (some p) (ring.head_slot * ring.entry_size)
          (ring_header_for ring.magic ring.head_seq now payload).to_bytes).2 (some p)
          (ring.head_slot * ring.entry_size + RING_HEADER_SIZE) payload).1 = ESP_OK
      swap
      · have he : fram_ring_append ring pm payload now =
            ((fram_pm_write (fram_pm_write (fram_pm_write pm (some p)
              (ring.head_slot * ring.entry_size + RING_HEADER_SIZE + ring.max_payload) [0]).2
              (some p) (ring.head_slot * ring.entry_size)
              (ring_header_for ring.magic ring.head_seq now payload).to_bytes).2 (some p)
              (ring.head_slot * ring.entry_size + RING_HEADER_SIZE) payload).1, ring,
             (fram_pm_write (fram_pm_write (fram_pm_write pm (some p)
              (ring.head_slot * ring.entry_size + RING_HEADER_SIZE + ring.max_payload) [0]).2
              (some p) (ring.head_slot * ring.entry_size)
              (ring_header_for ring.magic ring.head_seq now payload).to_bytes).2 (some p)
              (ring.head_slot * ring.entry_size + RING_HEADER_SIZE) payload).2) := by
          unfold fram_ring_append fram_ring_write_commit fram_ring_lock
          simp only [g.ready, g.mutex, mutex_take, g.part, hco, ho, hpo, e0, hbad, hhdr, e1, hp0,
            e2, Bool.not_true, Bool.false_eq_true, ne_eq, not_true_eq_false, not_false_eq_true,
            and_self, if_false, if_true]
        rw [he]
        exact ⟨rfl, _, hA2, Or.inr hK2⟩
      obtain ⟨n3, _, hA3, hok3, hbad3⟩ := fram_pm_write_any _ p _
        (ring.head_slot * ring.entry_size + RING_HEADER_SIZE + ring.max_payload)
        [FRAM_RING_COMMIT] hA2 (by decide) (by simp only [List.length_singleton]; omega)
      have he : fram_ring_append ring pm payload now =
          ((fram_pm_write (fram_pm_write (fram_pm_write (fram_pm_write pm (some p)
            (ring.head_slot * ring.entry_size + RING_HEADER_SIZE + ring.max_payload) [0]).2
            (some p) (ring.head_slot * ring.entry_size)
            (ring_header_for ring.magic ring.head_seq now payload).to_bytes).2 (some p)
            (ring.head_slot * ring.entry_size + RING_HEADER_SIZE) payload).2 (some p)
            (ring.head_slot * ring.entry_size + RING_HEADER_SIZE + ring.max_payload)
            [FRAM_RING_COMMIT]).1, ring,
           (fram_pm_write (fram_pm_write (fram_pm_write (fram_pm_write pm (some p)
            (ring.head_slot * ring.entry_size + RING_HEADER_SIZE + ring.max_payload) [0]).2
            (some p) (ring.head_slot * ring.entry_size)
            (ring_header_for ring.magic ring.head_seq now payload).to_bytes).2 (some p)
            (ring.head_slot * ring.entry_size + RING_HEADER_SIZE) payload).2 (some p)
            (ring.head_slot * ring.entry_size + RING_HEADER_SIZE + ring.max_payload)
            [FRAM_RING_COMMIT]).2) := by
        by_contra hne
        apply hfail
        unfold fram_ring_append fram_ring_write_commit fram_ring_lock at hne ⊢
        simp only [g.ready, g.mutex, mutex_take, g.part, hco, ho, hpo, e0, hbad, hhdr, e1, hp0,
          e2, Bool.not_true, Bool.false_eq_true, ne_eq, not_true_eq_false, not_false_eq_true,
          and_self, if_false, if_true] at hne ⊢
        by_cases e3 : (fram_pm_write (fram_pm_write (fram_pm_write (fram_pm_write pm (some p)
            (ring.head_slot * ring.entry_size + RING_HEADER_SIZE + ring.max_payload) [0]).2
            (some p) (ring.head_slot * ring.entry_size)
            (ring_header_for ring.magic ring.head_seq now payload).to_bytes).2 (some p)
            (ring.head_slot * ring.entry_size + RING_HEADER_SIZE) payload).2 (some p)
            (ring.head_slot * ring.entry_size + RING_HEADER_SIZE + ring.max_payload)
            [FRAM_RING_COMMIT]).1 = ESP_OK
        · simp only [e3, not_true_eq_false, if_false]
        · simp only [e3, not_false_eq_true, if_true, not_true_eq_false] at hne
      rw [he] at hfail ⊢
      rw [take_of_lt_one _ _ (hbad3 hfail), mem_write_nil] at hA3
      exact ⟨rfl, _, hA3, Or.inr hK2⟩
    · rw [if_neg hp0] at hhdr
      obtain ⟨n3, _, hA3, hok3, hbad3⟩ := fram_pm_write_any _ p _
        (ring.head_slot * ring.entry_size + RING_HEADER_SIZE + ring.max_payload)
        [FRAM_RING_COMMIT] hA1 (by decide) (by simp only [List.length_singleton]; omega)
      have he : fram_ring_append ring pm payload now =
          ((fram_pm_write (fram_pm_write (fram_pm_write pm (some p)
            (ring.head_slot * ring.entry_size + RING_HEADER_SIZE + ring.max_payload) [0]).2
            (some p) (ring.head_slot * ring.entry_size)
            (ring_header_for ring.magic ring.head_seq now payload).to_bytes).2 (some p)
            (ring.head_slot * ring.entry_size + RING_HEADER_SIZE + ring.max_payload)
            [FRAM_RING_COMMIT]).1, ring,
           (fram_pm_write (fram_pm_write (fram_pm_write pm (some p)
            (ring.head_slot * ring.entry_size + RING_HEADER_SIZE + ring.max_payload) [0]).2
            (some p) (ring.head_slot * ring.entry_size)
            (ring_header_for ring.magic ring.head_seq now payload).to_bytes).2 (some p)
            (ring.head_slot * ring.entry_size + RING_HEADER_SIZE + ring.max_payload)
            [FRAM_RING_COMMIT]).2) := by
        by_contra hne
        apply hfail
        unfold fram_ring_append fram_ring_write_commit fram_ring_lock at hne ⊢
        simp only [g.ready, g.mutex, mutex_take, g.part, hco, ho, e0, hbad, hhdr, e1, hp0,
          Bool.not_true, Bool.false_eq_true, ne_eq, not_true_eq_false, not_false_eq_true,
          and_false, if_false, if_true] at hne ⊢
        by_cases e3 : (fram_pm_write (fram_pm_write (fram_pm_write pm (some p)
            (ring.head_slot * ring.entry_size + RING_HEADER_SIZE + ring.max_payload) [0]).2
            (some p) (ring.head_slot * ring.entry_size)
            (ring_header_for ring.magic ring.head_seq now payload).to_bytes).2 (some p)
            (ring.head_slot * ring.entry_size + RING_HEADER_SIZE + ring.max_payload)
            [FRAM_RING_COMMIT]).1 = ESP_OK
        · simp only [e3, not_true_eq_false, if_false]
        · simp only [e3, not_false_eq_true, if_true, not_true_eq_false] at hne
      rw [he] at hfail ⊢
      rw [take_of_lt_one _ _ (hbad3 hfail), mem_write_nil] at hA3
      exact ⟨rfl, _, hA3, Or.inr hK1⟩

theorem pm_any_congr (pm : fram_pm_t) (p : fram_partition_t) (a b : Nat → Nat)
    (h : PmAny pm p a) (hab : ∀ i, i < p.size → a i = b i) : PmAny pm p b := by
  obtain ⟨hi, hw, mem, size, hd, hfit, hview⟩ := h
  exact ⟨hi, hw, mem, size, hd, hfit, fun i hi2 => (hview i hi2).trans (hab i hi2)⟩

theorem prefix_view_window (n c : Nat) (hn : n ≤ c) :
    ViewWindow (ring_prefix_view n) c 0 n := by
  intro s hs q
  unfold ring_prefix_view
  constructor
  · intro hv
    split_ifs at hv with h1
    injection hv with hv
    exact ⟨s, Nat.zero_le _, h1, Nat.mod_eq_of_lt hs, hv.symm⟩
  · rintro ⟨i, _, hi2, hi3, hi4⟩
    rw [Nat.mod_eq_of_lt (by omega)] at hi3
    subst hi3
    rw [if_pos hi2, hi4]

/-- The slots of a ring that is not full, after a failed append: the records
stored before the append are still in their slots and no other slot is
committed. -/
theorem ring_failed_view_ok (ring : fram_ring_t) (p : fram_partition_t)
    (pmem pmem1 : Nat → Nat) (es : List (List Nat × Nat)) (g : RingGeom ring p)
    (inv : RingAfter ring pmem es) (hlt : es.length < ring.capacity)
    (hk : RegionKeep pmem pmem1 (ring.head_slot * ring.entry_size) ring.entry_size
      (ring.head_slot * ring.entry_size + RING_HEADER_SIZE + ring.max_payload)) :
    RingView ring pmem1 (ring_prefix_view es.length) ∧
    ∀ i, i < es.length →
      SlotRec pmem1 ring i
        (ring_header_for ring.magic (i % U32) (es.getD i ([], 0)).2 (es.getD i ([], 0)).1)
        (es.getD i ([], 0)).1 := by
  have hes := g.entry_size
  have hhead : ring.head_slot = es.length := by
    rw [inv.head_slot, Nat.mod_eq_of_lt hlt]
  rw [hhead] at hk
  replace hk := region_keep_weak _ _ _ _ _ hk
  have hrec : ∀ i, i < es.length →
      SlotRec pmem1 ring i
        (ring_header_for ring.magic (i % U32) (es.getD i ([], 0)).2 (es.getD i ([], 0)).1)
        (es.getD i ([], 0)).1 := by
    intro i hi
    have hw := inv.window i hi (by omega)
    rw [Nat.mod_eq_of_lt (by omega)] at hw
    apply slot_rec_frame pmem _ ring ring _ _ _ rfl rfl hes (inv.bounded i hi).1 _ hw
    intro k hkk
    apply hk.1
    have hd := slot_disjoint ring.entry_size i es.length k (by omega) hkk
    rw [Nat.add_mul, Nat.one_mul] at hd
    exact hd
  refine ⟨?_, hrec⟩
  intro s hs
  constructor
  · intro q hq
    unfold ring_prefix_view at hq
    split_ifs at hq with h1
    injection hq with hq
    have hb := inv.bounded s h1
    refine ⟨by rw [← hq]; exact Nat.mod_lt _ (by decide), (es.getD s ([], 0)).2,
      (es.getD s ([], 0)).1, hb.1, hb.2, ?_⟩
    rw [← hq]
    exact hrec s h1
  · intro hv
    unfold ring_prefix_view at hv
    split_ifs at hv with h1
    by_cases hse : s = es.length
    · subst hse
      rcases hk.2 with h2 | h2
      · rw [h2]
        exact inv.fresh _ (Nat.le_refl _) hs
      · rw [h2]
        decide
    · have hd := slot_disjoint ring.entry_size s es.length
        (RING_HEADER_SIZE + ring.max_payload) hse (by omega)
      rw [Nat.add_mul, Nat.one_mul] at hd
      rw [Nat.add_assoc, hk.1 _ hd, ← Nat.add_assoc]
      exact inv.fresh s (by omega) hs

/-- Recovery from the view of a ring that is not full gives back the ring
object of `n` appends. -/
theorem ring_recovered_head_run (p : fram_partition_t) (cfg : fram_ring_config_t) (n : Nat)
    (hn : n < (ring_empty p cfg).capacity)
    (hcU : (ring_empty p cfg).capacity + (ring_empty p cfg).capacity ≤ U32) :
    ring_recovered p cfg (ring_prefix_view n) =
      { ring_empty p cfg with count := n, head_slot := n, head_seq := n, tail_slot := 0 } := by
  have hw := prefix_view_window n (ring_empty p cfg).capacity (by omega)
  by_cases h0 : n = 0
  · subst h0
    rw [ring_recovered_empty p cfg _ 0 0 hw (Nat.le_refl _)]
    rfl
  · rw [ring_recovered_window p cfg _ 0 n (n - 1) hw (by omega) hcU (Nat.zero_le _) (by omega)
      (by omega) (fun i _ hi hne => by
        rw [Nat.mod_eq_of_lt (by omega), Nat.mod_eq_of_lt (by omega)]; omega)]
    have e1 : n - 1 + 1 = n := by omega
    have e2 : n - 1 - 0 + 1 = n := by omega
    rw [e1, e2, Nat.mod_eq_of_lt hn, Nat.mod_eq_of_lt (show n < U32 by omega),
      Nat.mod_eq_of_lt (show n + (ring_empty p cfg).capacity < U32 by omega)]
    have e3 : n + (ring_empty p cfg).capacity + U32 - n = (ring_empty p cfg).capacity + U32 := by
      omega
    rw [e3, Nat.add_mod_right, Nat.mod_eq_of_lt (show (ring_empty p cfg).capacity < U32 by omega),
      Nat.mod_self]

/-- C12 (amended). Ring append is all-or-nothing under failure on a ring that
is not full. On an erased partition, after `fram_ring_init` and successful
appends that leave the ring with fewer records than its capacity, let
`fram_ring_append` run on a device that holds the same partition bytes and
whose HAL may fail at any operation. If the append does not return `ESP_OK`,
the ring object is unchanged, and `fram_ring_init` on a working device over
the resulting partition bytes returns `ESP_OK` with the ring object of before
the append (the same count, head_slot, tail_slot and head_seq); every record
appended before is read back from its slot with its payload, length, sequence
number and timestamp. -/
theorem ring_append_all_or_nothing (K : Kconfig) (ring0 ring1 ring2 ringX : fram_ring_t)
    (pm pm1 pm2 pmF pmR : fram_pm_t) (p : fram_partition_t) (pmem : Nat → Nat)
    (cfg : fram_ring_config_t) (entries : List (List Nat × Nat)) (payload : List Nat)
    (now : Nat) (buf : List Nat) (cap s0 t0 : Nat)
    (hK : K.FRAM_RING_MAX_PAYLOAD + RING_HEADER_SIZE + 1 < U32) (hmagic : cfg.magic < U32)
    (h : PmOK pm p pmem) (hfind : fram_pm_find pm cfg.partition_name = some p)
    (herased : ∀ i, i < p.size → pmem i = 0xFF)
    (hinit : fram_ring_init K ring0 pm cfg = (ESP_OK, ring1, pm1))
    (happ : fram_ring_append_all ring1 pm1 entries = (ESP_OK, ring2, pm2))
    (hroom : entries.length < fram_ring_capacity ring2)
    (hF : PmAny pmF p (pm_media pm2 p))
    (hfail : (fram_ring_append ring2 pmF payload now).1 ≠ ESP_OK)
    (hR : PmOK pmR p (pm_media (fram_ring_append ring2 pmF payload now).2.2 p))
    (hfindR : fram_pm_find pmR cfg.partition_name = some p)
    (hcap : ∀ e ∈ entries, e.1.length ≤ cap) :
    (fram_ring_append ring2 pmF payload now).2.1 = ring2 ∧
    (fram_ring_init K ringX pmR cfg).1 = ESP_OK ∧
    (fram_ring_init K ringX pmR cfg).2.1 = ring2 ∧
    ∀ i, i < entries.length →
      ∃ pm5, fram_ring_read_slot_payload (fram_ring_init K ringX pmR cfg).2.1
          (fram_ring_init K ringX pmR cfg).2.2 i
          { payload := some buf, len := some cap, seq := some s0, ts_us := some t0 } =
        (ESP_OK,
          { payload := some ((entries.getD i ([], 0)).1
              ++ buf.drop (entries.getD i ([], 0)).1.length)
            len := some (entries.getD i ([], 0)).1.length
            seq := some i
            ts_us := some ((entries.getD i ([], 0)).2 % U64) }, pm5) := by
  obtain ⟨pmem2, g2, h2, inv2, hr1, e1, e2, e3, e4, _⟩ := ring_run_spec K ring0 ring1 ring2
    pm pm1 pm2 p pmem cfg entries hK hmagic h hfind herased hinit happ
  obtain ⟨hmp, hle, hcfg⟩ := ring_init_ok_cfg K ring0 ring1 pm pm1 p cfg hfind hK hinit
  obtain ⟨g, hes⟩ := ring_empty_geom K p cfg hle hK hmagic hcfg
  unfold fram_ring_capacity at hroom
  have hF2 : PmAny pmF p pmem2 := pm_any_congr pmF p _ _ hF (pm_any_media pm2 p pmem2 h2.pm_any)
  have hh : ring2.head_slot < ring2.capacity := by
    rw [inv2.head_slot]; exact Nat.mod_lt _ g2.capacity_pos
  obtain ⟨hring, pmem1, hA1, hkeep⟩ := ring_append_any ring2 p pmF pm2 pmem2 pmem2 payload now
    g2 h2 hF2 hh hfail
  have hR1 : PmOK pmR p pmem1 := pm_ok_congr pmR p _ _ hR (pm_any_media _ p pmem1 hA1)
  obtain ⟨hview, hrecs⟩ := ring_failed_view_ok ring2 p pmem2 pmem1 entries g2 inv2 hroom hkeep
  rw [hr1] at e1 e2 e3 e4
  have hview2 : RingView (ring_empty p cfg) pmem1 (ring_prefix_view entries.length) :=
    ring_view_congr ring2 _ pmem1 _ e1 e4 e2 e3 hview
  obtain ⟨pm4, hi4, h4⟩ := ring_init_view K ringX pmR p pmem1 cfg _ hfindR hR1 hmp hle hK hmagic
    hcfg hview2
  have hcU := ring_capacity_small _ p pm4 pmem1 g h4
  rw [ring_recovered_head_run p cfg entries.length (by rw [← e1]; exact hroom) hcU] at hi4
  have hn32 : entries.length < U32 := by omega
  have hreq : ring2 =
      { ring_empty p cfg with
        count := entries.length
        head_slot := entries.length
        head_seq := entries.length
        tail_slot := 0 } := by
    have a1 := g2.part
    have a2 := g2.mutex
    have a3 := g2.ready
    have a4 := inv2.head_seq
    have a5 := inv2.head_slot
    have a6 := inv2.count
    have a7 := inv2.tail_slot
    rw [Nat.mod_eq_of_lt hn32] at a4
    rw [Nat.mod_eq_of_lt hroom] at a5
    rw [Nat.min_eq_left (Nat.le_of_lt hroom)] at a6
    rw [if_pos (Nat.le_of_lt hroom)] at a7
    cases ring2
    simp only at a1 a2 a3 a4 a5 a6 a7 e1 e2 e3 e4
    subst a1 a2 a3 a4 a5 a6 a7 e1 e2 e3 e4
    rfl
  rw [hi4]
  refine ⟨hring, rfl, hreq.symm, ?_⟩
  intro i hi
  have hb := inv2.bounded i hi
  have hc : (entries.getD i ([], 0)).1.length ≤ cap := by
    rw [List.getD_eq_getElem _ _ hi]
    exact hcap _ (List.getElem_mem _)
  have hrec := hrecs i hi
  rw [Nat.mod_eq_of_lt (show i < U32 by omega)] at hrec
  show ∃ pm5, fram_ring_read_slot_payload _ pm4 i _ = _
  rw [← hreq]
  obtain ⟨pm5, hrd, _⟩ := ring_read_slot_rec ring2 p pm4 pmem1 i i (entries.getD i ([], 0)).2
    (entries.getD i ([], 0)).1 buf cap s0 t0 g2 h4 (by omega) (by omega) hb.1 hb.2 hc hrec
  exact ⟨pm5, hrd⟩

/-! ## The armed mock device -/

theorem fram_dev_write_loop_nil (fuel : Nat) (dev : fram_dev_t) (addr mt : Nat) :
    fram_dev_write_loop fuel dev addr [] mt = (ESP_OK, dev) := by
  cases fuel <;> simp [fram_dev_write_loop]

/-- A write on an armed device that has not reached its failure point. -/
theorem dev_armed_write_ok (dev : fram_dev_t) (mem : Nat → Nat) (size c f offset : Nat)
    (data : List Nat) (hd : DevArmed dev mem size c f) (hc : c + 1 < f) (hcU : c + 1 < U32)
    (hlen : 0 < data.length) (hr : offset + data.length ≤ size) :
    ∃ dev1, fram_dev_write dev offset data = (ESP_OK, dev1) ∧
      DevArmed dev1 (mem_write mem offset data) size (c + 1) f := by
  obtain ⟨hm, hfo, hse, hsl, hme, hcnt, haf, hsg⟩ := hd
  have hmt : (if dev.hal.max_transfer ≠ 0 then dev.hal.max_transfer else dev.hal.size_bytes)
      = size := by
    rw [hsg, hse]; split <;> rfl
  have hchunk : (if data.length > size then size else data.length) = data.length := by
    rw [if_neg (by omega)]
  have hnf : fram_mock_should_fail
      { dev.hal.ctx with op_count := (dev.hal.ctx.op_count + 1) % U32 } = false := by
    simp only [fram_mock_should_fail, hfo, Bool.not_true, Bool.false_eq_true, if_false, hcnt,
      haf, Nat.mod_eq_of_lt hcU, ge_iff_le, Nat.not_le.mpr hc]
  have hw : fram_hal_mock_write dev.hal offset data =
      (ESP_OK, { dev.hal with ctx := { dev.hal.ctx with
        op_count := (dev.hal.ctx.op_count + 1) % U32,
        buffer := mem_write dev.hal.ctx.buffer offset data } }) := by
    unfold fram_hal_mock_write
    rw [if_neg (by omega), if_neg (by omega)]
    simp only [hnf, Bool.false_eq_true, if_false]
  obtain ⟨k, hk⟩ : ∃ k, data.length = k + 1 := ⟨data.length - 1, by omega⟩
  refine ⟨fram_dev_record_success
    { dev with
      hal := { dev.hal with ctx := { dev.hal.ctx with
        op_count := (dev.hal.ctx.op_count + 1) % U32,
        buffer := mem_write dev.hal.ctx.buffer offset data } },
      write_count := (dev.write_count + 1) % U32 }, ?_, ?_⟩
  · unfold fram_dev_write
    rw [if_neg (by omega), if_neg (by omega)]
    simp only [fram_dev_lock, hm, mutex_take, ne_eq, not_true_eq_false, if_false, hmt]
    have hfu : fram_dev_write_loop data.length dev offset data size
        = fram_dev_write_loop (k + 1) dev offset data size := by rw [hk]
    rw [hfu, fram_dev_write_loop, if_neg (by omega)]
    simp only [hchunk, List.take_length, hw, ne_eq, not_true_eq_false, if_false,
      List.drop_length, fram_dev_write_loop_nil, hm]
  · exact ⟨hm, hfo, hse, hsl, by rw [← hme]; rfl,
      by show (dev.hal.ctx.op_count + 1) % U32 = c + 1; rw [hcnt, Nat.mod_eq_of_lt hcU],
      haf, hsg⟩

/-- A write on an armed device that has reached its failure point: the call
returns `ESP_FAIL` and the media is unchanged. -/
theorem dev_armed_write_fail (dev : fram_dev_t) (mem : Nat → Nat) (size c f offset : Nat)
    (data : List Nat) (hd : DevArmed dev mem size c f) (hc : f ≤ (c + 1) % U32)
    (hlen : 0 < data.length) (hr : offset + data.length ≤ size) :
    ∃ dev1, fram_dev_write dev offset data = (ESP_FAIL, dev1) ∧
      DevArmed dev1 mem size ((c + 1) % U32) f := by
  obtain ⟨hm, hfo, hse, hsl, hme, hcnt, haf, hsg⟩ := hd
  have hmt : (if dev.hal.max_transfer ≠ 0 then dev.hal.max_transfer else dev.hal.size_bytes)
      = size := by
    rw [hsg, hse]; split <;> rfl
  have hchunk : (if data.length > size then size else data.length) = data.length := by
    rw [if_neg (by omega)]
  have hnf : fram_mock_should_fail
      { dev.hal.ctx with op_count := (dev.hal.ctx.op_count + 1) % U32 } = true := by
    simp only [fram_mock_should_fail, hfo, Bool.not_true, Bool.false_eq_true, if_false, hcnt,
      haf, ge_iff_le, hc, if_true]
  have hw : fram_hal_mock_write dev.hal offset data =
      (ESP_FAIL, { dev.hal with ctx := { dev.hal.ctx with
        op_count := (dev.hal.ctx.op_count + 1) % U32 } }) := by
    unfold fram_hal_mock_write
    rw [if_neg (by omega), if_neg (by omega)]
    simp only [hnf, if_true]
  obtain ⟨k, hk⟩ : ∃ k, data.length = k + 1 := ⟨data.length - 1, by omega⟩
  refine ⟨fram_dev_record_error
    { dev with
      hal := { dev.hal with ctx := { dev.hal.ctx with
        op_count := (dev.hal.ctx.op_count + 1) % U32 } } }, ?_, ?_⟩
  · unfold fram_dev_write
    rw [if_neg (by omega), if_neg (by omega)]
    simp only [fram_dev_lock, hm, mutex_take, ne_eq, not_true_eq_false, if_false, hmt]
    have hfu : fram_dev_write_loop data.length dev offset data size
        = fram_dev_write_loop (k + 1) dev offset data size := by rw [hk]
    rw [hfu, fram_dev_write_loop, if_neg (by omega)]
    simp only [hchunk, List.take_length, hw, ne_eq, reduceCtorEq, not_false_eq_true, if_true,
      hm]
  · unfold fram_dev_record_error
    simp only
    split
    · exact ⟨hm, hfo, hse, hsl, hme, by
        show (dev.hal.ctx.op_count + 1) % U32 = (c + 1) % U32; rw [hcnt], haf, hsg⟩
    · exact ⟨hm, hfo, hse, hsl, hme, by
        show (dev.hal.ctx.op_count + 1) % U32 = (c + 1) % U32; rw [hcnt], haf, hsg⟩

theorem PmArmed.armed_any {pm : fram_pm_t} {p : fram_partition_t} {pmem : Nat → Nat} {c f : Nat}
    (h : PmArmed pm p pmem c f) : PmAny pm p pmem := by
  obtain ⟨hi, hw, mem, size, hd, hfit, hview⟩ := h
  exact ⟨hi, hw, mem, size, ⟨hd.mutex_free, hd.size_eq, hd.size_lt, hd.mem_eq⟩, hfit, hview⟩

/-- `fram_pm_write` on an armed device that has not reached its failure
point. -/
theorem pm_armed_write_ok (pm : fram_pm_t) (p : fram_partition_t) (pmem : Nat → Nat)
    (c f offset : Nat) (data : List Nat) (h : PmArmed pm p pmem c f) (hc : c + 1 < f)
    (hcU : c + 1 < U32) (hlen : 0 < data.length) (hr : offset + data.length ≤ p.size) :
    ∃ pm1, fram_pm_write pm (some p) offset data = (ESP_OK, pm1) ∧
      PmArmed pm1 p (mem_write pmem offset data) (c + 1) f := by
  obtain ⟨hi, hw, mem, size, hd, hfit, hview⟩ := h
  have hsz := hd.size_lt
  have hU : (p.offset + offset) % U32 = p.offset + offset :=
    Nat.mod_eq_of_lt (by omega)
  obtain ⟨dev1, h1, hd1⟩ := dev_armed_write_ok pm.dev mem size c f (p.offset + offset) data hd
    hc hcU hlen (by omega)
  refine ⟨{ pm with dev := dev1 }, ?_, ⟨hi, hw, _, size, hd1, hfit, ?_⟩⟩
  · have hvr : fram_pm_is_valid_range p offset data.length = true := by
      unfold fram_pm_is_valid_range
      rw [if_neg (by omega), if_neg (by omega)]
    simp only [fram_pm_write, hi, hvr, hU, h1, hw, Bool.not_true, Bool.false_eq_true, if_false,
      ne_eq, not_true_eq_false]
  · intro i hi2
    simp only [mem_write_apply]
    by_cases hcc : offset ≤ i ∧ i < offset + data.length
    · rw [if_pos (by omega), if_pos hcc]
      congr 1
      omega
    · rw [if_neg (by omega), if_neg hcc]
      exact hview i hi2

/-- `fram_pm_write` on an armed device that has reached its failure point
returns `ESP_FAIL` and leaves the media as it was. -/
theorem pm_armed_write_fail (pm : fram_pm_t) (p : fram_partition_t) (pmem : Nat → Nat)
    (c f offset : Nat) (data : List Nat) (h : PmArmed pm p pmem c f) (hc : f ≤ (c + 1) % U32)
    (hlen : 0 < data.length) (hr : offset + data.length ≤ p.size) :
    ∃ pm1, fram_pm_write pm (some p) offset data = (ESP_FAIL, pm1) ∧
      PmArmed pm1 p pmem ((c + 1) % U32) f := by
  obtain ⟨hi, hw, mem, size, hd, hfit, hview⟩ := h
  have hsz := hd.size_lt
  have hU : (p.offset + offset) % U32 = p.offset + offset :=
    Nat.mod_eq_of_lt (by omega)
  obtain ⟨dev1, h1, hd1⟩ := dev_armed_write_fail pm.dev mem size c f (p.offset + offset) data hd
    hc hlen (by omega)
  refine ⟨{ pm with dev := dev1 }, ?_, ⟨hi, hw, _, size, hd1, hfit, hview⟩⟩
  have hvr : fram_pm_is_valid_range p offset data.length = true := by
    unfold fram_pm_is_valid_range
    rw [if_neg (by omega), if_neg (by omega)]
  simp only [fram_pm_write, hi, hvr, hU, h1, hw, Bool.not_true, Bool.false_eq_true, if_false,
    ne_eq, not_true_eq_false]

/-- A restart keeps the partition bytes and gives a working device. -/
theorem pm_remount_ok (pm : fram_pm_t) (p : fram_partition_t) (pmem : Nat → Nat) (size : Nat)
    (h : PmAny pm p pmem) (hfit : p.offset + p.size ≤ size) (hsz : size < U32) :
    PmOK (pm_remount pm size) p pmem ∧ PmOK (pm_remount pm size) p (pm_media pm p) ∧
    PmSame pm (pm_remount pm size) := by
  have hm := pm_any_media pm p pmem h
  obtain ⟨hi, hw, _, _, _, _, _⟩ := h
  have hd : DevOK (pm_remount pm size).dev pm.dev.hal.ctx.buffer size :=
    ⟨rfl, rfl, rfl, Nat.mod_eq_of_lt hsz, hsz, rfl⟩
  exact ⟨⟨hi, hw, _, size, hd, hfit, fun i hi2 => hm i hi2⟩,
    ⟨hi, hw, _, size, hd, hfit, fun _ _ => rfl⟩, rfl, rfl⟩

/-- Arming a restarted mock: no operation counted, failure from the
operation number `f`. -/
theorem pm_remount_armed (pm : fram_pm_t) (p : fram_partition_t) (pmem : Nat → Nat)
    (size f : Nat) (h : PmAny pm p pmem) (hfit : p.offset + p.size ≤ size) (hsz : size < U32) :
    PmArmed (pm_set_fail_after (pm_remount pm size) f) p pmem 0 f ∧
    PmAny (pm_set_fail_after (pm_remount pm size) f) p (pm_media pm p) ∧
    PmSame pm (pm_set_fail_after (pm_remount pm size) f) := by
  have hm := pm_any_media pm p pmem h
  obtain ⟨hi, hw, _, _, _, _, _⟩ := h
  have hd : DevArmed (pm_set_fail_after (pm_remount pm size) f).dev pm.dev.hal.ctx.buffer
      size 0 f :=
    ⟨rfl, rfl, Nat.mod_eq_of_lt hsz, hsz, rfl, rfl, rfl, Nat.mod_eq_of_lt hsz⟩
  exact ⟨⟨hi, hw, _, size, hd, hfit, fun i hi2 => hm i hi2⟩,
    ⟨hi, hw, _, size, ⟨hd.mutex_free, hd.size_eq, hd.size_lt, hd.mem_eq⟩, hfit,
      fun _ _ => rfl⟩, rfl, rfl⟩

set_option maxRecDepth 4000 in
/-- `fram_ring_append` on a mock armed to fail at its second operation: the
commit byte of the head slot is cleared, the header write fails, and the call
returns `ESP_FAIL` with the ring object unchanged. -/
theorem ring_append_fail_after_clear (ring : fram_ring_t) (p : fram_partition_t)
    (pm pm0 : fram_pm_t) (pmem pmem0 : Nat → Nat) (payload : List Nat) (now c : Nat)
    (g : RingGeom ring p) (h0 : PmOK pm0 p pmem0) (h : PmArmed pm p pmem c (c + 2))
    (hcU : c + 2 < U32) (hh : ring.head_slot < ring.capacity)
    (hl : payload.length ≤ ring.max_payload) (hl16 : payload.length ≤ UINT16_MAX) :
    ∃ pm1, fram_ring_append ring pm payload now = (ESP_FAIL, ring, pm1) ∧
      PmArmed pm1 p (mem_write pmem
        (ring.head_slot * ring.entry_size + RING_HEADER_SIZE + ring.max_payload) [0])
        (c + 2) (c + 2) := by
  obtain ⟨ho, hco, hpo, hfit, hsz⟩ := ring_slot_offset_eq ring p pm0 pmem0 g h0 ring.head_slot hh
  have hes := g.entry_size
  have h24 : RING_HEADER_SIZE = 24 := rfl
  have hexp : (ring.head_slot + 1) * ring.entry_size
      = ring.head_slot * ring.entry_size + ring.entry_size := by
    rw [Nat.add_mul, Nat.one_mul]
  have hhl := ring_to_bytes_length (ring_header_for ring.magic ring.head_seq now payload)
  obtain ⟨pm1, h1, hok1⟩ := pm_armed_write_ok pm p pmem c (c + 2)
    (ring.head_slot * ring.entry_size + RING_HEADER_SIZE + ring.max_payload) [0] h
    (by omega) (by omega) (by decide) (by simp only [List.length_singleton]; omega)
  obtain ⟨pm2, h2, hok2⟩ := pm_armed_write_fail pm1 p _ (c + 1) (c + 2)
    (ring.head_slot * ring.entry_size)
    (ring_header_for ring.magic ring.head_seq now payload).to_bytes hok1
    (by rw [Nat.mod_eq_of_lt (by omega)])
    (by rw [hhl]; decide) (by rw [hhl]; omega)
  rw [Nat.mod_eq_of_lt (show c + 1 + 1 < U32 by omega)] at hok2
  have hhdr := ring_append_hdr_eq ring.magic ring.head_seq now payload hl16
  refine ⟨pm2, ?_, hok2⟩
  unfold fram_ring_append fram_ring_write_commit fram_ring_lock
  simp only [g.ready, g.mutex, mutex_take, g.part, hco, ho, h1,
    hhdr, h2, Nat.not_lt.mpr hl, Nat.not_lt.mpr hl16, Bool.not_true, Bool.false_eq_true,
    ne_eq, not_true_eq_false, reduceCtorEq, not_false_eq_true, or_self, false_and,
    if_false, if_true]

/-- The window of the view that only misses the slot 0. -/
theorem drop_oldest_view_window (c : Nat) :
    ViewWindow (fun s => if s = 0 then none else some (s % U32)) c 1 c := by
  intro s hs q
  constructor
  · intro hv
    simp only at hv
    split_ifs at hv with h1
    injection hv with hv
    exact ⟨s, by omega, hs, Nat.mod_eq_of_lt hs, hv.symm⟩
  · rintro ⟨i, hi1, hi2, hi3, hi4⟩
    rw [Nat.mod_eq_of_lt hi2] at hi3
    subst hi3
    simp only
    rw [if_neg (by omega), hi4]

/-- The slots of a ring holding exactly `capacity` records once the commit
byte of slot 0, the head slot, is cleared: the records 1 .. capacity - 1 are
in their slots and slot 0 is not committed. -/
theorem ring_cleared_view_ok (ring : fram_ring_t) (p : fram_partition_t)
    (pmem : Nat → Nat) (es : List (List Nat × Nat)) (g : RingGeom ring p)
    (inv : RingAfter ring pmem es) (hfull : es.length = ring.capacity) :
    RingView ring (mem_write pmem (0 * ring.entry_size + RING_HEADER_SIZE + ring.max_payload) [0])
      (fun s => if s = 0 then none else some (s % U32)) := by
  have hes := g.entry_size
  intro s hs
  constructor
  · intro q hq
    simp only at hq
    split_ifs at hq with h1
    injection hq with hq
    have hb := inv.bounded s (by omega)
    refine ⟨by rw [← hq]; exact Nat.mod_lt _ (by decide), (es.getD s ([], 0)).2,
      (es.getD s ([], 0)).1, hb.1, hb.2, ?_⟩
    rw [← hq]
    have hw := inv.window s (by omega) (by omega)
    rw [Nat.mod_eq_of_lt hs] at hw
    apply slot_rec_frame pmem _ ring ring _ _ _ rfl rfl hes hb.1 _ hw
    intro k hk
    apply mem_write_outside
    have hd := slot_disjoint ring.entry_size s 0 k h1 hk
    simp only [List.length_singleton]
    omega
  · intro hv
    simp only at hv
    split_ifs at hv with h1
    subst h1
    have := mem_write_inside pmem (0 * ring.entry_size + RING_HEADER_SIZE + ring.max_payload)
      [0] 0 (by decide)
    rw [Nat.add_zero] at this
    rw [this]
    decide

/-- The failed append on the example ring: what the run, the armed mock and
the restart give, for any run of appends with payloads of at most 16 bytes. -/
theorem example_ring_fail_facts (entries : List (List Nat × Nat))
    (hb : ∀ e ∈ entries, e.1.length ≤ 16) :
    ∃ pmem2, RingGeom (example_ring_run entries).2.1 example_ring_part ∧
      PmOK (example_ring_run entries).2.2 example_ring_part pmem2 ∧
      RingAfter (example_ring_run entries).2.1 pmem2 entries ∧
      (example_ring_run entries).2.1.capacity = 99 ∧
      (example_ring_run entries).2.1.entry_size = (ring_empty example_ring_part
        example_ring_cfg).entry_size ∧
      (example_ring_run entries).2.1.max_payload = (ring_empty example_ring_part
        example_ring_cfg).max_payload ∧
      (example_ring_run entries).2.1.magic = (ring_empty example_ring_part
        example_ring_cfg).magic ∧
      example_ring_failed entries =
        (ESP_FAIL, (example_ring_run entries).2.1, (example_ring_failed entries).2.2) ∧
      PmAny (example_ring_armed entries) example_ring_part
        (pm_media (example_ring_run entries).2.2 example_ring_part) ∧
      PmOK (pm_remount (example_ring_failed entries).2.2 32768) example_ring_part
        (pm_media (example_ring_failed entries).2.2 example_ring_part) ∧
      PmOK (pm_remount (example_ring_failed entries).2.2 32768) example_ring_part
        (mem_write pmem2 ((example_ring_run entries).2.1.head_slot
          * (example_ring_run entries).2.1.entry_size + RING_HEADER_SIZE
          + (example_ring_run entries).2.1.max_payload) [0]) ∧
      fram_pm_find (pm_remount (example_ring_failed entries).2.2 32768)
        example_ring_cfg.partition_name = some example_ring_part := by
  obtain ⟨pmem2, g2, h2, inv2, hr1, e1, e2, e3, e4, hs2⟩ := ring_run_spec example_K
    example_ring0 _ _ example_pm _ _ example_ring_part (fun _ => 0xFF) example_ring_cfg entries
    (by decide) (by decide) example_pm_ring_ok example_ring_find (fun _ _ => rfl)
    example_ring_init_ok (example_ring_run_ok entries hb)
  rw [hr1] at e1 e2 e3 e4
  have hcap : (example_ring_run entries).2.1.capacity = 99 := by
    rw [e1]; decide
  have hmp : (example_ring_run entries).2.1.max_payload = 16 := by
    rw [e2]; rfl
  obtain ⟨hA, hF, hs3⟩ := pm_remount_armed (example_ring_run entries).2.2 example_ring_part
    pmem2 32768 2 h2.pm_any (by decide) (by decide)
  have hh : (example_ring_run entries).2.1.head_slot < (example_ring_run entries).2.1.capacity := by
    rw [inv2.head_slot]; exact Nat.mod_lt _ g2.capacity_pos
  obtain ⟨pmF, hfl, hAF⟩ := ring_append_fail_after_clear (example_ring_run entries).2.1
    example_ring_part (example_ring_armed entries) (example_ring_run entries).2.2 pmem2 pmem2
    [7] 100 0 g2 h2 hA (by decide) hh (by rw [hmp]; decide) (by decide)
  have hfl2 : example_ring_failed entries = (ESP_FAIL, (example_ring_run entries).2.1, pmF) := hfl
  have hpm : (example_ring_failed entries).2.2 = pmF := by rw [hfl2]
  obtain ⟨hR1, hR2, hs5⟩ := pm_remount_ok pmF example_ring_part _ 32768 hAF.armed_any
    (by decide) (by decide)
  have hs4 := fram_ring_append_same (example_ring_run entries).2.1 (example_ring_armed entries)
    [7] 100
  have hs4b : PmSame (example_ring_armed entries) pmF := by
    have : (fram_ring_append (example_ring_run entries).2.1 (example_ring_armed entries)
      [7] 100).2.2 = pmF := hpm
    rw [this] at hs4
    exact hs4
  have hsame : PmSame example_pm (pm_remount pmF 32768) :=
    PmSame.trans_same _ _ _ (PmSame.trans_same _ _ _ (PmSame.trans_same _ _ _ hs2 hs3) hs4b) hs5
  refine ⟨pmem2, g2, h2, inv2, hcap, e4, e2, e3, ?_, hF, ?_, ?_, ?_⟩
  · rw [hpm]; exact hfl2
  · rw [hpm]; exact hR2
  · rw [hpm]; exact hR1
  · rw [hpm, fram_pm_find_same _ _ _ hsame]
    exact example_ring_find

/-- Witness for C12: three appends on the example ring (capacity 99), then an
append on the mock armed to fail at its second operation, which clears the
commit byte of the head slot and fails at the header. The append returns
`ESP_FAIL`, and `fram_ring_init` after a restart gives back the ring object of
before the append, with the three records readable. -/
theorem ring_append_all_or_nothing_witness :
    (example_ring_failed example_ring_entries).1 = ESP_FAIL ∧
    (example_ring_failed example_ring_entries).2.1 = (example_ring_run example_ring_entries).2.1 ∧
    (example_ring_reinit example_ring_entries).1 = ESP_OK ∧
    (example_ring_reinit example_ring_entries).2.1 = (example_ring_run example_ring_entries).2.1 ∧
    ∀ i, i < example_ring_entries.length →
      ∃ pm5, fram_ring_read_slot_payload (example_ring_reinit example_ring_entries).2.1
          (example_ring_reinit example_ring_entries).2.2 i
          { payload := some [0, 0, 0, 0], len := some 4, seq := some 0, ts_us := some 0 } =
        (ESP_OK,
          { payload := some ((example_ring_entries.getD i ([], 0)).1
              ++ [0, 0, 0, 0].drop (example_ring_entries.getD i ([], 0)).1.length)
            len := some (example_ring_entries.getD i ([], 0)).1.length
            seq := some i
            ts_us := some ((example_ring_entries.getD i ([], 0)).2 % U64) }, pm5) := by
  obtain ⟨pmem2, _, _, _, hcap, _, _, _, hfl, hF, hR, _, hfindR⟩ :=
    example_ring_fail_facts example_ring_entries (by decide)
  have hw := ring_append_all_or_nothing example_K example_ring0 _ _ example_ring0 example_pm _ _
    (example_ring_armed example_ring_entries)
    (pm_remount (example_ring_failed example_ring_entries).2.2 32768)
    example_ring_part (fun _ => 0xFF) example_ring_cfg example_ring_entries [7] 100
    [0, 0, 0, 0] 4 0 0 (by decide) (by decide) example_pm_ring_ok example_ring_find
    (fun _ _ => rfl) example_ring_init_ok (example_ring_run_ok example_ring_entries (by decide))
    (by unfold fram_ring_capacity; rw [hcap]; decide) hF
    (by
      have : fram_ring_append (example_ring_run example_ring_entries).2.1
        (example_ring_armed example_ring_entries) [7] 100 = _ := hfl
      rw [this]; decide)
    hR hfindR (by decide)
  exact ⟨by rw [hfl], hw.1, hw.2.1, hw.2.2.1, hw.2.2.2⟩

theorem example_ring_full_len (e : List Nat × Nat) (he : e ∈ example_ring_full) :
    e.1.length = 1 := by
  unfold example_ring_full at he
  obtain ⟨i, _, rfl⟩ := List.mem_map.mp he
  rfl

theorem example_ring_full_length : example_ring_full.length = 99 := by
  unfold example_ring_full
  rw [List.length_map, List.length_range]

/-- Counterexample for C12: on the full example ring (99 records in 99 slots)
an append on the mock armed to fail at its second operation clears the commit
byte of the head slot, which holds the oldest record, and fails at the header
write. The append returns `ESP_FAIL`, and `fram_ring_init` after a restart
recovers 98 records, not the 99 of before the append. -/
theorem ring_append_all_or_nothing_counterexample :
    (example_ring_run example_ring_full).1 = ESP_OK ∧
    fram_ring_count (example_ring_run example_ring_full).2.1 = 99 ∧
    fram_ring_capacity (example_ring_run example_ring_full).2.1 = 99 ∧
    (example_ring_failed example_ring_full).1 = ESP_FAIL ∧
    (example_ring_reinit example_ring_full).1 = ESP_OK ∧
    fram_ring_count (example_ring_reinit example_ring_full).2.1 = 98 := by
  have hb : ∀ e ∈ example_ring_full, e.1.length ≤ 16 := fun e he => by
    rw [example_ring_full_len e he]; decide
  obtain ⟨pmem2, g2, h2, inv2, hcap, e4, e2, e3, hfl, _, _, hR, hfindR⟩ :=
    example_ring_fail_facts example_ring_full hb
  have hlen := example_ring_full_length
  have hhead : (example_ring_run example_ring_full).2.1.head_slot = 0 := by
    rw [inv2.head_slot, hlen, hcap]
  rw [hhead] at hR
  have hview := ring_cleared_view_ok _ example_ring_part pmem2 example_ring_full g2 inv2
    (by rw [hlen, hcap])
  have hc99 : (ring_empty example_ring_part example_ring_cfg).capacity = 99 := by decide
  have hview2 := ring_view_congr _ (ring_empty example_ring_part example_ring_cfg) _ _
    (by rw [hcap, hc99]) e4 e2 e3 hview
  obtain ⟨pm4, hi4, h4⟩ := ring_init_view example_K example_ring0
    (pm_remount (example_ring_failed example_ring_full).2.2 32768) example_ring_part _
    example_ring_cfg _ hfindR hR (by decide) (by decide) (by decide) (by decide) (by decide)
    hview2
  have hwin := drop_oldest_view_window (ring_empty example_ring_part example_ring_cfg).capacity
  have hrec := ring_recovered_window example_ring_part example_ring_cfg _ 1
    (ring_empty example_ring_part example_ring_cfg).capacity 98 hwin (by rw [hc99]; decide)
    (by rw [hc99]; decide) (by decide) (by rw [hc99]; decide) (by omega)
    (fun i h1 h2 hne => by
      rw [hc99] at h2
      rw [Nat.mod_eq_of_lt (show i < U32 by rw [U32_eq]; omega),
        Nat.mod_eq_of_lt (show 98 < U32 by decide)]
      omega)
  rw [hrec] at hi4
  have hi5 : example_ring_reinit example_ring_full = _ := hi4
  refine ⟨?_, ?_, hcap, by rw [hfl], by rw [hi5], by rw [hi5]; rfl⟩
  · unfold example_ring_run
    rw [example_ring_run_ok example_ring_full hb]
  · rw [fram_ring_count_eq, inv2.count, hlen, hcap]
    rfl

set_option maxRecDepth 4000 in
/-- `fram_vslot_save` on a device that may fail: when the call does not
return `ESP_OK` the slot store object is unchanged, the media differs from the
one before the call at most inside the target slot, and the commit byte of the
target slot is zero unless the media is the one before the call. -/
theorem vslot_save_any (vs : fram_vslot_t) (p : fram_partition_t) (pm pm0 : fram_pm_t)
    (pmem pmem0 : Nat → Nat) (payload : List Nat) (now slot ver : Nat)
    (g : VslotGeom vs p) (h0 : PmOK pm0 p pmem0) (h : PmAny pm p pmem)
    (hslot : (if vs.has_data then ((vs.active_slot + 1) % U32) % vs.slot_count else 0) = slot)
    (hver : (if vs.has_data then (vs.active_version + 1) % U32 else 1) = ver)
    (hh : slot < vs.slot_count)
    (hfail : (fram_vslot_save vs pm payload now).1 ≠ ESP_OK) :
    (fram_vslot_save vs pm payload now).2.1 = vs ∧
    ∃ pmem1, PmAny (fram_vslot_save vs pm payload now).2.2 p pmem1 ∧
      RegionKeep pmem pmem1 (slot * vs.slot_size) vs.slot_size
        (slot * vs.slot_size + VSLOT_HEADER_SIZE + vs.max_payload) := by
  obtain ⟨ho, hco, hpo, hfit, hsz⟩ := vslot_slot_offset_eq vs p pm0 pmem0 g h0 slot hh
  rw [ho] at hpo
  have hes := g.slot_size
  have hmpl := vslot_max_payload_lt vs p pm0 pmem0 g h0
  have h24 : VSLOT_HEADER_SIZE = 24 := rfl
  have hexp : (slot + 1) * vs.slot_size
      = slot * vs.slot_size + vs.slot_size := by
    rw [Nat.add_mul, Nat.one_mul]
  by_cases hbad : payload.length > vs.max_payload
  · have he : fram_vslot_save vs pm payload now = (ESP_ERR_INVALID_SIZE, vs, pm) := by
      unfold fram_vslot_save
      simp only [hbad, if_true]
    rw [he]
    exact ⟨rfl, pmem, h, region_keep_refl _ _ _ _⟩
  · have hl : payload.length ≤ vs.max_payload := by omega
    have hhl := vslot_to_bytes_length (vslot_header_for vs.magic ver now payload)
    obtain ⟨n0, _, hA0, hok0, hbad0⟩ := fram_pm_write_any pm p pmem
      (slot * vs.slot_size + VSLOT_HEADER_SIZE + vs.max_payload) [0] h
      (by decide) (by simp only [List.length_singleton]; omega)
    have hK0 := region_keep_clear pmem (slot * vs.slot_size) vs.slot_size
      (slot * vs.slot_size + VSLOT_HEADER_SIZE + vs.max_payload) n0
      (by omega) (by omega)
    by_cases e0 : (fram_pm_write pm (some p)
        (slot * vs.slot_size + VSLOT_HEADER_SIZE + vs.max_payload) [0]).1 = ESP_OK
    swap
    · have he : fram_vslot_save vs pm payload now =
          ((fram_pm_write pm (some p)
            (slot * vs.slot_size + VSLOT_HEADER_SIZE + vs.max_payload) [0]).1, vs,
           (fram_pm_write pm (some p)
            (slot * vs.slot_size + VSLOT_HEADER_SIZE + vs.max_payload) [0]).2) := by
        unfold fram_vslot_save fram_vslot_write_commit fram_vslot_lock
        simp only [g.mutex, mutex_take, g.part, hslot, hver, hco, e0, hbad,
          Bool.not_true, Bool.false_eq_true, ne_eq, not_true_eq_false, not_false_eq_true,
          if_false, if_true]
      rw [he]
      exact ⟨rfl, _, hA0, hK0⟩
    have hC0 : RegionCleared pmem (mem_write pmem
        (slot * vs.slot_size + VSLOT_HEADER_SIZE + vs.max_payload)
        (List.take n0 [0])) (slot * vs.slot_size) vs.slot_size
        (slot * vs.slot_size + VSLOT_HEADER_SIZE + vs.max_payload) := by
      rw [take_of_eq_length _ _ (hok0 e0)]
      exact region_cleared_byte pmem _ _ _ (by omega) (by omega)
    obtain ⟨n1, _, hA1, hok1, hbad1⟩ := fram_pm_write_any _ p _
      (slot * vs.slot_size)
      (vslot_header_for vs.magic ver now payload).to_bytes hA0
      (by rw [hhl]; decide) (by rw [hhl]; omega)
    have hK1 := region_cleared_write pmem _ (slot * vs.slot_size) vs.slot_size
      (slot * vs.slot_size + VSLOT_HEADER_SIZE + vs.max_payload)
      (slot * vs.slot_size) n1
      (vslot_header_for vs.magic ver now payload).to_bytes hC0
      (Nat.le_refl _) (by rw [hhl]; omega) (Or.inr (by rw [hhl]; omega))
    have hhdr := vslot_save_hdr_eq vs.magic ver now payload (by omega)
    by_cases e1 : (fram_pm_write (fram_pm_write pm (some p)
        (slot * vs.slot_size + VSLOT_HEADER_SIZE + vs.max_payload) [0]).2 (some p)
        (slot * vs.slot_size)
        (vslot_header_for vs.magic ver now payload).to_bytes).1 = ESP_OK
    swap
    · have he : fram_vslot_save vs pm payload now =
          ((fram_pm_write (fram_pm_write pm (some p)
            (slot * vs.slot_size + VSLOT_HEADER_SIZE + vs.max_payload) [0]).2
            (some p) (slot * vs.slot_size)
            (vslot_header_for vs.magic ver now payload).to_bytes).1, vs,
           (fram_pm_write (fram_pm_write pm (some p)
            (slot * vs.slot_size + VSLOT_HEADER_SIZE + vs.max_payload) [0]).2
            (some p) (slot * vs.slot_size)
            (vslot_header_for vs.magic ver now payload).to_bytes).2) := by
        unfold fram_vslot_save fram_vslot_write_commit fram_vslot_lock
        simp only [g.mutex, mutex_take, g.part, hslot, hver, hco, ho, e0, hbad, hhdr, e1,
          Bool.not_true, Bool.false_eq_true, ne_eq, not_true_eq_false, not_false_eq_true,
          false_and, if_false, if_true]
      rw [he]
      exact ⟨rfl, _, hA1, Or.inr hK1⟩
    by_cases hp0 : payload.length > 0
    · rw [if_pos hp0] at hhdr
      obtain ⟨n2, _, hA2, hok2, hbad2⟩ := fram_pm_write_any _ p _
        (slot * vs.slot_size + VSLOT_HEADER_SIZE) payload hA1 hp0 (by omega)
      have hK2 := region_cleared_write pmem _ (slot * vs.slot_size) vs.slot_size
        (slot * vs.slot_size + VSLOT_HEADER_SIZE + vs.max_payload)
        (slot * vs.slot_size + VSLOT_HEADER_SIZE) n2 payload hK1
        (by omega) (by omega) (Or.inr (by omega))
      by_cases e2 : (fram_pm_write (fram_pm_write (fram_pm_write pm (some p)
          (slot * vs.slot_size + VSLOT_HEADER_SIZE + vs.max_payload) [0]).2
          (some p) (slot * vs.slot_size)
          (vslot_header_for vs.magic ver now payload).to_bytes).2 (some p)
          (slot * vs.slot_size + VSLOT_HEADER_SIZE) payload).1 = ESP_OK
      swap
      · have he : fram_vslot_save vs pm payload now =
            ((fram_pm_write (fram_pm_write (fram_pm_write pm (some p)
              (slot * vs.slot_size + VSLOT_HEADER_SIZE + vs.max_payload) [0]).2
              (some p) (slot * vs.slot_size)
              (vslot_header_for vs.magic ver now payload).to_bytes).2 (some p)
              (slot * vs.slot_size + VSLOT_HEADER_SIZE) payload).1, vs,
             (fram_pm_write (fram_pm_write (fram_pm_write pm (some p)
              (slot * vs.slot_size + VSLOT_HEADER_SIZE + vs.max_payload) [0]).2
              (some p) (slot * vs.slot_size)
              (vslot_header_for vs.magic ver now payload).to_bytes).2 (some p)
              (slot * vs.slot_size + VSLOT_HEADER_SIZE) payload).2) := by
          unfold fram_vslot_save fram_vslot_write_commit fram_vslot_lock
          simp only [g.mutex, mutex_take, g.part, hslot, hver, hco, ho, hpo, e0, hbad, hhdr, e1, hp0,
            e2, Bool.not_true, Bool.false_eq_true, ne_eq, not_true_eq_false, not_false_eq_true,
            and_self, if_false, if_true]
        rw [he]
        exact ⟨rfl, _, hA2, Or.inr hK2⟩
      obtain ⟨n3, _, hA3, hok3, hbad3⟩ := fram_pm_write_any _ p _
        (slot * vs.slot_size + VSLOT_HEADER_SIZE + vs.max_payload)
        [FRAM_VSLOT_COMMIT] hA2 (by decide) (by simp only [List.length_singleton]; omega)
      have he : fram_vslot_save vs pm payload now =
          ((fram_pm_write (fram_pm_write (fram_pm_write (fram_pm_write pm (some p)
            (slot * vs.slot_size + VSLOT_HEADER_SIZE + vs.max_payload) [0]).2
            (some p) (slot * vs.slot_size)
            (vslot_header_for vs.magic ver now payload).to_bytes).2 (some p)
            (slot * vs.slot_size + VSLOT_HEADER_SIZE) payload).2 (some p)
            (slot * vs.slot_size + VSLOT_HEADER_SIZE + vs.max_payload)
            [FRAM_VSLOT_COMMIT]).1, vs,
           (fram_pm_write (fram_pm_write (fram_pm_write (fram_pm_write pm (some p)
            (slot * vs.slot_size + VSLOT_HEADER_SIZE + vs.max_payload) [0]).2
            (some p) (slot * vs.slot_size)
            (vslot_header_for vs.magic ver now payload).to_bytes).2 (some p)
            (slot * vs.slot_size + VSLOT_HEADER_SIZE) payload).2 (some p)
            (slot * vs.slot_size + VSLOT_HEADER_SIZE + vs.max_payload)
            [FRAM_VSLOT_COMMIT]).2) := by
        by_contra hne
        apply hfail
        unfold fram_vslot_save fram_vslot_write_commit fram_vslot_lock at hne ⊢
        simp only [g.mutex, mutex_take, g.part, hslot, hver, hco, ho, hpo, e0, hbad, hhdr, e1, hp0,
          e2, Bool.not_true, Bool.false_eq_true, ne_eq, not_true_eq_false, not_false_eq_true,
          and_self, if_false, if_true] at hne ⊢
        by_cases e3 : (fram_pm_write (fram_pm_write (fram_pm_write (fram_pm_write pm (some p)
            (slot * vs.slot_size + VSLOT_HEADER_SIZE + vs.max_payload) [0]).2
            (some p) (slot * vs.slot_size)
            (vslot_header_for vs.magic ver now payload).to_bytes).2 (some p)
            (slot * vs.slot_size + VSLOT_HEADER_SIZE) payload).2 (some p)
            (slot * vs.slot_size + VSLOT_HEADER_SIZE + vs.max_payload)
            [FRAM_VSLOT_COMMIT]).1 = ESP_OK
        · simp only [e3, if_true]
        · simp only [e3, if_false, not_true_eq_false] at hne
      rw [he] at hfail ⊢
      rw [take_of_lt_one _ _ (hbad3 hfail), mem_write_nil] at hA3
      exact ⟨rfl, _, hA3, Or.inr hK2⟩
    · rw [if_neg hp0] at hhdr
      obtain ⟨n3, _, hA3, hok3, hbad3⟩ := fram_pm_write_any _ p _
        (slot * vs.slot_size + VSLOT_HEADER_SIZE + vs.max_payload)
        [FRAM_VSLOT_COMMIT] hA1 (by decide) (by simp only [List.length_singleton]; omega)
      have he : fram_vslot_save vs pm payload now =
          ((fram_pm_write (fram_pm_write (fram_pm_write pm (some p)
            (slot * vs.slot_size + VSLOT_HEADER_SIZE + vs.max_payload) [0]).2
            (some p) (slot * vs.slot_size)
            (vslot_header_for vs.magic ver now payload).to_bytes).2 (some p)
            (slot * vs.slot_size + VSLOT_HEADER_SIZE + vs.max_payload)
            [FRAM_VSLOT_COMMIT]).1, vs,
           (fram_pm_write (fram_pm_write (fram_pm_write pm (some p)
            (slot * vs.slot_size + VSLOT_HEADER_SIZE + vs.max_payload) [0]).2
            (some p) (slot * vs.slot_size)
            (vslot_header_for vs.magic ver now payload).to_bytes).2 (some p)
            (slot * vs.slot_size + VSLOT_HEADER_SIZE + vs.max_payload)
            [FRAM_VSLOT_COMMIT]).2) := by
        by_contra hne
        apply hfail
        unfold fram_vslot_save fram_vslot_write_commit fram_vslot_lock at hne ⊢
        simp only [g.mutex, mutex_take, g.part, hslot, hver, hco, ho, e0, hbad, hhdr, e1, hp0,
          Bool.not_true, Bool.false_eq_true, ne_eq, not_true_eq_false, not_false_eq_true,
          and_false, if_false, if_true] at hne ⊢
        by_cases e3 : (fram_pm_write (fram_pm_write (fram_pm_write pm (some p)
            (slot * vs.slot_size + VSLOT_HEADER_SIZE + vs.max_payload) [0]).2
            (some p) (slot * vs.slot_size)
            (vslot_header_for vs.magic ver now payload).to_bytes).2 (some p)
            (slot * vs.slot_size + VSLOT_HEADER_SIZE + vs.max_payload)
            [FRAM_VSLOT_COMMIT]).1 = ESP_OK
        · simp only [e3, if_true]
        · simp only [e3, if_false, not_true_eq_false] at hne
      rw [he] at hfail ⊢
      rw [take_of_lt_one _ _ (hbad3 hfail), mem_write_nil] at hA3
      exact ⟨rfl, _, hA3, Or.inr hK1⟩

/-- `fram_pm_write` on an armed mock: it succeeds before the failure point and
returns `ESP_FAIL`, without touching the media, from the failure point on. -/
theorem pm_armed_write (pm : fram_pm_t) (p : fram_partition_t) (pmem : Nat → Nat)
    (c f offset : Nat) (data : List Nat) (h : PmArmed pm p pmem c f) (hcU : c + 1 < U32)
    (hlen : 0 < data.length) (hr : offset + data.length ≤ p.size) :
    (c + 1 < f ∧ ∃ pm1, fram_pm_write pm (some p) offset data = (ESP_OK, pm1) ∧
      PmArmed pm1 p (mem_write pmem offset data) (c + 1) f) ∨
    (f ≤ c + 1 ∧ ∃ pm1, fram_pm_write pm (some p) offset data = (ESP_FAIL, pm1) ∧
      PmArmed pm1 p pmem (c + 1) f) := by
  by_cases hc : c + 1 < f
  · exact Or.inl ⟨hc, pm_armed_write_ok pm p pmem c f offset data h hc hcU hlen hr⟩
  · have hm : (c + 1) % U32 = c + 1 := Nat.mod_eq_of_lt hcU
    obtain ⟨pm1, h1, h2⟩ := pm_armed_write_fail pm p pmem c f offset data h
      (by rw [hm]; omega) hlen hr
    rw [hm] at h2
    exact Or.inr ⟨by omega, pm1, h1, h2⟩

set_option maxRecDepth 4000 in
/-- `fram_vslot_save` on a mock armed to fail at one of the writes of the
save (commit clear, header, payload when there is one, commit byte): the call
returns `ESP_FAIL`. -/
theorem vslot_save_armed_fails (vs : fram_vslot_t) (p : fram_partition_t) (pm pm0 : fram_pm_t)
    (pmem pmem0 : Nat → Nat) (payload : List Nat) (now slot ver c f : Nat)
    (g : VslotGeom vs p) (h0 : PmOK pm0 p pmem0) (h : PmArmed pm p pmem c f)
    (hslot : (if vs.has_data then ((vs.active_slot + 1) % U32) % vs.slot_count else 0) = slot)
    (hver : (if vs.has_data then (vs.active_version + 1) % U32 else 1) = ver)
    (hh : slot < vs.slot_count) (hl : payload.length ≤ vs.max_payload)
    (hcU : c + 4 < U32) (hf : f ≤ c + (if payload.length > 0 then 4 else 3)) :
    (fram_vslot_save vs pm payload now).1 = ESP_FAIL := by
  obtain ⟨ho, hco, hpo, hfit, hsz⟩ := vslot_slot_offset_eq vs p pm0 pmem0 g h0 slot hh
  rw [ho] at hpo
  have hes := g.slot_size
  have hmpl := vslot_max_payload_lt vs p pm0 pmem0 g h0
  have h24 : VSLOT_HEADER_SIZE = 24 := rfl
  have hexp : (slot + 1) * vs.slot_size = slot * vs.slot_size + vs.slot_size := by
    rw [Nat.add_mul, Nat.one_mul]
  have hhl := vslot_to_bytes_length (vslot_header_for vs.magic ver now payload)
  have hhdr := vslot_save_hdr_eq vs.magic ver now payload (by omega)
  rcases pm_armed_write pm p pmem c f
    (slot * vs.slot_size + VSLOT_HEADER_SIZE + vs.max_payload) [0] h
    (by omega) (by decide) (by simp only [List.length_singleton]; omega) with
    ⟨hc1, pm1, h1, hok1⟩ | ⟨_, pm1, h1, _⟩
  swap
  · unfold fram_vslot_save fram_vslot_write_commit fram_vslot_lock
    simp only [g.mutex, mutex_take, g.part, hslot, hver, hco, h1, Nat.not_lt.mpr hl,
      ne_eq, not_true_eq_false, reduceCtorEq, not_false_eq_true, if_false, if_true]
  rcases pm_armed_write pm1 p _ (c + 1) f (slot * vs.slot_size)
    (vslot_header_for vs.magic ver now payload).to_bytes hok1
    (by omega) (by rw [hhl]; decide) (by rw [hhl]; omega) with
    ⟨hc2, pm2, h2, hok2⟩ | ⟨_, pm2, h2, _⟩
  swap
  · unfold fram_vslot_save fram_vslot_write_commit fram_vslot_lock
    simp only [g.mutex, mutex_take, g.part, hslot, hver, hco, ho, h1, hhdr, h2,
      Nat.not_lt.mpr hl, ne_eq, not_true_eq_false, reduceCtorEq, not_false_eq_true,
      false_and, if_false, if_true]
  by_cases hp0 : payload.length > 0
  · rw [if_pos hp0] at hhdr hf
    rcases pm_armed_write pm2 p _ (c + 1 + 1) f (slot * vs.slot_size + VSLOT_HEADER_SIZE)
      payload hok2 (by omega) hp0 (by omega) with
      ⟨hc3, pm3, h3, hok3⟩ | ⟨_, pm3, h3, _⟩
    swap
    · unfold fram_vslot_save fram_vslot_write_commit fram_vslot_lock
      simp only [g.mutex, mutex_take, g.part, hslot, hver, hco, ho, hpo, h1, hhdr, h2, h3, hp0,
        Nat.not_lt.mpr hl, ne_eq, not_true_eq_false, reduceCtorEq, not_false_eq_true,
        and_self, if_false, if_true]
    rcases pm_armed_write pm3 p _ (c + 1 + 1 + 1) f
      (slot * vs.slot_size + VSLOT_HEADER_SIZE + vs.max_payload) [FRAM_VSLOT_COMMIT] hok3
      (by omega) (by decide) (by simp only [List.length_singleton]; omega) with
      ⟨hc4, _, _, _⟩ | ⟨_, pm4, h4, _⟩
    · omega
    · unfold fram_vslot_save fram_vslot_write_commit fram_vslot_lock
      simp only [g.mutex, mutex_take, g.part, hslot, hver, hco, ho, hpo, h1, hhdr, h2, h3, h4,
        hp0, Nat.not_lt.mpr hl, ne_eq, not_true_eq_false, reduceCtorEq, not_false_eq_true,
        and_self, if_false, if_true]
  · rw [if_neg hp0] at hhdr hf
    rcases pm_armed_write pm2 p _ (c + 1 + 1) f
      (slot * vs.slot_size + VSLOT_HEADER_SIZE + vs.max_payload) [FRAM_VSLOT_COMMIT] hok2
      (by omega) (by decide) (by simp only [List.length_singleton]; omega) with
      ⟨hc4, _, _, _⟩ | ⟨_, pm4, h4, _⟩
    · omega
    · unfold fram_vslot_save fram_vslot_write_commit fram_vslot_lock
      simp only [g.mutex, mutex_take, g.part, hslot, hver, hco, ho, h1, hhdr, h2, h4,
        hp0, Nat.not_lt.mpr hl, ne_eq, not_true_eq_false, reduceCtorEq, not_false_eq_true,
        and_false, if_false, if_true]

theorem vslot_window_view_window (lo hi n : Nat) (hn : 0 < n) (hsz : hi ≤ lo + n) :
    VslotWindow (vslot_window_view lo hi n) n lo hi := by
  intro s hs q
  constructor
  · intro hv
    unfold vslot_window_view at hv
    split_ifs at hv with h1 h2
    obtain ⟨f1, f2, f3⟩ := torn_index_facts hi n s hn hs (by omega)
    injection hv with hv
    exact ⟨hi - 1 - (hi - 1 - s) % n, by omega, by omega, f1, hv.symm⟩
  · rintro ⟨i, hi1, hi2, hi3, hi4⟩
    have hsi : s ≤ i := by rw [← hi3]; exact Nat.mod_le _ _
    obtain ⟨f1, f2, f3⟩ := torn_index_facts hi n s hn hs (by omega)
    have hu : hi - 1 - (hi - 1 - s) % n = i :=
      index_unique n _ _ (by omega) (by omega) (by rw [f1, hi3])
    unfold vslot_window_view
    rw [if_neg (by omega), hu, if_neg (by omega), hi4]

/-- A partition whose slots hold the records `lo ≤ i < k` of a run of saves
and no other committed slot is described by the window view. -/
theorem vslot_window_view_ok (vs : fram_vslot_t) (p : fram_partition_t)
    (pmem pmem1 : Nat → Nat) (es : List (List Nat × Nat)) (lo : Nat) (g : VslotGeom vs p)
    (inv : VslotAfter vs pmem es) (hlo : es.length ≤ lo + vs.slot_count)
    (hkeep : ∀ i, lo ≤ i → i < es.length → ∀ j, j < vs.slot_size →
      pmem1 (i % vs.slot_count * vs.slot_size + j) = pmem (i % vs.slot_count * vs.slot_size + j))
    (hfree : ∀ s, s < vs.slot_count → (∀ i, lo ≤ i → i < es.length → i % vs.slot_count ≠ s) →
      pmem1 (s * vs.slot_size + VSLOT_HEADER_SIZE + vs.max_payload) ≠ FRAM_VSLOT_COMMIT) :
    VslotView vs pmem1 (vslot_window_view lo es.length vs.slot_count) := by
  have hcpos := g.slot_count_pos
  have hes := g.slot_size
  have hwin := vslot_window_view_window lo es.length vs.slot_count hcpos hlo
  intro s hs
  constructor
  · intro q hq
    obtain ⟨i, h1, h2, h3, h4⟩ := (hwin s hs q).mp hq
    have hb := inv.bounded i h2
    refine ⟨by rw [h4]; exact Nat.mod_lt _ (by decide), (es.getD i ([], 0)).2,
      (es.getD i ([], 0)).1, hb, ?_⟩
    rw [h4, ← h3]
    exact vslot_rec_frame pmem _ vs vs _ _ _ rfl rfl hes hb (hkeep i h1 h2)
      (inv.window i h2 (by omega))
  · intro hv
    apply hfree s hs
    intro i h1 h2 h3
    have := (hwin s hs ((i + 1) % U32)).mpr ⟨i, h1, h2, h3, rfl⟩
    rw [hv] at this
    exact Option.noConfusion this

/-- The slots after `k` saves, on the media as the saves left it. -/
theorem vslot_unchanged_view_ok (vs : fram_vslot_t) (p : fram_partition_t)
    (pmem : Nat → Nat) (es : List (List Nat × Nat)) (g : VslotGeom vs p)
    (inv : VslotAfter vs pmem es) :
    VslotView vs pmem (vslot_window_view (es.length - vs.slot_count) es.length vs.slot_count) := by
  have hcpos := g.slot_count_pos
  refine vslot_window_view_ok vs p pmem pmem es (es.length - vs.slot_count) g inv
    (by omega) (fun _ _ _ _ _ => rfl) ?_
  intro s hs hno
  by_cases hsk : s < es.length
  · obtain ⟨f1, f2, f3⟩ := torn_index_facts es.length vs.slot_count s hcpos hs hsk
    exact absurd f1 (hno _ (by omega) (by omega))
  · exact inv.fresh s (by omega) hs

/-- The slots after `k ≥ 1` saves once the commit byte of the next slot is
cleared, whatever else changed inside that slot: the records `k + 1 - n ≤ i < k`
are in their slots and no other slot is committed. -/
theorem vslot_cleared_view_ok (vs : fram_vslot_t) (p : fram_partition_t)
    (pmem pmem1 : Nat → Nat) (es : List (List Nat × Nat)) (g : VslotGeom vs p)
    (inv : VslotAfter vs pmem es) (hk1 : 1 ≤ es.length) (hn2 : 2 ≤ vs.slot_count)
    (hclr : RegionCleared pmem pmem1 (es.length % vs.slot_count * vs.slot_size) vs.slot_size
      (es.length % vs.slot_count * vs.slot_size + VSLOT_HEADER_SIZE + vs.max_payload)) :
    VslotView vs pmem1
      (vslot_window_view (es.length + 1 - vs.slot_count) es.length vs.slot_count) ∧
    VSlotRec pmem1 vs ((es.length - 1) % vs.slot_count)
      (vslot_header_for vs.magic ((es.length - 1 + 1) % U32)
        (es.getD (es.length - 1) ([], 0)).2 (es.getD (es.length - 1) ([], 0)).1)
      (es.getD (es.length - 1) ([], 0)).1 := by
  have hcpos := g.slot_count_pos
  have hes := g.slot_size
  have hrec : ∀ i, es.length + 1 - vs.slot_count ≤ i → i < es.length → ∀ j, j < vs.slot_size →
      pmem1 (i % vs.slot_count * vs.slot_size + j)
        = pmem (i % vs.slot_count * vs.slot_size + j) := by
    intro i h1 h2 j hj
    apply hclr.1
    have hd := slot_disjoint vs.slot_size (i % vs.slot_count) (es.length % vs.slot_count) j
      (mod_ne_of_window _ _ _ h2 (by omega)) hj
    rw [Nat.add_mul, Nat.one_mul] at hd
    exact hd
  refine ⟨vslot_window_view_ok vs p pmem pmem1 es (es.length + 1 - vs.slot_count) g inv
    (by omega) hrec ?_, ?_⟩
  · intro s hs hno
    by_cases hst : s = es.length % vs.slot_count
    · rw [hst, hclr.2]
      decide
    · have hout : pmem1 (s * vs.slot_size + VSLOT_HEADER_SIZE + vs.max_payload)
          = pmem (s * vs.slot_size + VSLOT_HEADER_SIZE + vs.max_payload) := by
        rw [Nat.add_assoc]
        apply hclr.1
        have hd := slot_disjoint vs.slot_size s (es.length % vs.slot_count)
          (VSLOT_HEADER_SIZE + vs.max_payload) hst (by omega)
        rw [Nat.add_mul, Nat.one_mul] at hd
        exact hd
      rw [hout]
      by_cases hsk : s < es.length
      · obtain ⟨f1, f2, f3⟩ := torn_index_facts es.length vs.slot_count s hcpos hs hsk
        have hne : es.length - 1 - (es.length - 1 - s) % vs.slot_count + vs.slot_count
            ≠ es.length := by
          intro he
          apply hst
          rw [← he, Nat.add_mod_right, f1]
        exact absurd f1 (hno _ (by omega) (by omega))
      · exact inv.fresh s (by omega) hs
  · exact vslot_rec_frame pmem _ vs vs _ _ _ rfl rfl hes (inv.bounded _ (by omega))
      (hrec _ (by omega) (by omega)) (inv.window (es.length - 1) (by omega) (by omega))

/-- The slots after a failed save that follows `k ≥ 1` saves, `k < 2^32`: the
media is described by a view from which `fram_vslot_init` recovers the slot
`(k - 1) % n` with version `k`, and the record saved last is still in its
slot. -/
theorem vslot_failed_recovered (vs : fram_vslot_t) (p : fram_partition_t)
    (pmem pmem1 : Nat → Nat) (es : List (List Nat × Nat)) (cfg : fram_vslot_config_t)
    (g : VslotGeom vs p) (inv : VslotAfter vs pmem es)
    (hk1 : 1 ≤ es.length) (hkU : es.length < U32) (hn2 : 2 ≤ vs.slot_count)
    (hcfg : vs.slot_count = cfg.slot_count)
    (hkeep : RegionKeep pmem pmem1 (es.length % vs.slot_count * vs.slot_size) vs.slot_size
      (es.length % vs.slot_count * vs.slot_size + VSLOT_HEADER_SIZE + vs.max_payload)) :
    (∃ V, VslotView vs pmem1 V ∧
      vslot_recovered p cfg V =
        { vslot_empty p cfg with
          has_data := true
          active_slot := (es.length - 1) % cfg.slot_count
          active_version := es.length % U32 }) ∧
    VSlotRec pmem1 vs ((es.length - 1) % vs.slot_count)
      (vslot_header_for vs.magic ((es.length - 1 + 1) % U32)
        (es.getD (es.length - 1) ([], 0)).2 (es.getD (es.length - 1) ([], 0)).1)
      (es.getD (es.length - 1) ([], 0)).1 := by
  have hcpos := g.slot_count_pos
  have hk : es.length - 1 + 1 = es.length := by omega
  have hmaxv : ∀ lo i, lo ≤ i → i < es.length → i ≠ es.length - 1 →
      (i + 1) % U32 < (es.length - 1 + 1) % U32 := by
    intro lo i _ h2 h3
    rw [Nat.mod_eq_of_lt (by omega), Nat.mod_eq_of_lt (by omega)]
    omega
  have hfinish : ∀ lo, lo ≤ es.length - 1 → es.length ≤ lo + vs.slot_count →
      vslot_recovered p cfg (vslot_window_view lo es.length vs.slot_count) =
        { vslot_empty p cfg with
          has_data := true
          active_slot := (es.length - 1) % cfg.slot_count
          active_version := es.length % U32 } := by
    intro lo h1 h2
    have hw := vslot_window_view_window lo es.length vs.slot_count hcpos h2
    rw [hcfg] at hw
    rw [hcfg, vslot_recovered_window p cfg _ lo es.length (es.length - 1) hw (by omega) h1
      (by omega) (hmaxv lo), hk]
  rcases hkeep with heq | hclr
  · subst heq
    exact ⟨⟨_, vslot_unchanged_view_ok vs p pmem1 es g inv, hfinish _ (by omega) (by omega)⟩,
      inv.window (es.length - 1) (by omega) (by omega)⟩
  · obtain ⟨hv, hr⟩ := vslot_cleared_view_ok vs p pmem pmem1 es g inv hk1 hn2 hclr
    exact ⟨⟨_, hv, hfinish _ (by omega) (by omega)⟩, hr⟩

/-- The target slot of the save that follows `k ≥ 1` saves. -/
theorem vslot_next_slot (vs : fram_vslot_t) (pmem : Nat → Nat) (es : List (List Nat × Nat))
    (inv : VslotAfter vs pmem es) (hk1 : 1 ≤ es.length) (hn : 0 < vs.slot_count)
    (hU : vs.slot_count < U32) :
    (if vs.has_data then ((vs.active_slot + 1) % U32) % vs.slot_count else 0)
      = es.length % vs.slot_count := by
  have hd : vs.has_data = true := by
    rw [inv.has_data]; exact decide_eq_true (by omega)
  have hlt := Nat.mod_lt (es.length - 1) hn
  have h1 : ((es.length - 1) % vs.slot_count + 1) % U32
      = (es.length - 1) % vs.slot_count + 1 := Nat.mod_eq_of_lt (by omega)
  rw [hd, if_pos rfl, inv.active_slot, h1, succ_mod_mod]
  congr 1
  omega

/-- The slot store object after `k ≥ 1` saves is the one `fram_vslot_init`
builds for the slot `(k - 1) % n` and the version `k % 2^32`. -/
theorem vslot_after_eq (vs : fram_vslot_t) (p : fram_partition_t) (pmem : Nat → Nat)
    (es : List (List Nat × Nat)) (cfg : fram_vslot_config_t) (g : VslotGeom vs p)
    (inv : VslotAfter vs pmem es) (hk1 : 1 ≤ es.length)
    (e1 : vs.slot_count = cfg.slot_count) (e2 : vs.max_payload = cfg.max_payload)
    (e3 : vs.magic = cfg.magic) (e4 : vs.slot_size = (vslot_empty p cfg).slot_size) :
    vs = { vslot_empty p cfg with
          has_data := true
          active_slot := (es.length - 1) % cfg.slot_count
          active_version := es.length % U32 } := by
  have a1 := g.part
  have a2 := g.mutex
  have a3 := inv.has_data
  have a4 := inv.active_slot
  have a5 := inv.active_version
  rw [decide_eq_true (show 0 < es.length by omega)] at a3
  rw [e1] at a4
  cases vs
  simp only at a1 a2 a3 a4 a5 e1 e2 e3 e4
  subst a1 a2 a3 a4 a5 e1 e2 e3 e4
  rfl

/-- C13 (amended). VSlot save never loses the previous value, for fewer than
`2^32` saves. On an erased partition, after `fram_vslot_init` and `k`
successful saves with `1 ≤ k < 2^32`, let `fram_vslot_save` run on a device
that holds the same partition bytes and whose HAL may fail at any operation.
On the mock armed to fail at one of the writes of the save (commit clear,
header, payload when there is one, commit byte) the save returns `ESP_FAIL`.
Whenever the save does not return `ESP_OK`, the slot store object is
unchanged (active slot, version), and on a working device over the resulting
partition bytes `fram_vslot_load` returns the payload saved last and
`fram_vslot_init` returns `ESP_OK` with the slot store object of before the
failed save (the same active slot and version). -/
theorem vslot_save_failure_keeps_value (K : Kconfig) (vs0 vs1 vs2 vsX : fram_vslot_t)
    (pm pm1 pm2 pmF pmR : fram_pm_t) (p : fram_partition_t) (pmem : Nat → Nat)
    (cfg : fram_vslot_config_t) (entries : List (List Nat × Nat)) (payload : List Nat)
    (now : Nat) (buf : List Nat) (cap : Nat)
    (hK : 3 * (K.FRAM_VSLOT_MAX_PAYLOAD + VSLOT_HEADER_SIZE + 1) < U32)
    (hmagic : cfg.magic < U32)
    (h : PmOK pm p pmem) (hfind : fram_pm_find pm cfg.partition_name = some p)
    (herased : ∀ i, i < p.size → pmem i = 0xFF)
    (hinit : fram_vslot_init K vs0 pm cfg = (ESP_OK, vs1, pm1))
    (happ : fram_vslot_save_all vs1 pm1 entries = (ESP_OK, vs2, pm2))
    (hk1 : 1 ≤ entries.length) (hkU : entries.length < U32)
    (hF : PmAny pmF p (pm_media pm2 p))
    (hR : PmOK pmR p (pm_media (fram_vslot_save vs2 pmF payload now).2.2 p))
    (hfindR : fram_pm_find pmR cfg.partition_name = some p)
    (hcap : (entries.getD (entries.length - 1) ([], 0)).1.length ≤ cap) :
    (∀ c f, PmArmed pmF p (pm_media pm2 p) c f → payload.length ≤ cfg.max_payload →
      c + 4 < U32 → f ≤ c + (if payload.length > 0 then 4 else 3) →
      (fram_vslot_save vs2 pmF payload now).1 = ESP_FAIL) ∧
    ((fram_vslot_save vs2 pmF payload now).1 ≠ ESP_OK →
      (fram_vslot_save vs2 pmF payload now).2.1 = vs2 ∧
      (∃ pm5, fram_vslot_load vs2 pmR { payload := some buf, len := some cap } =
        (ESP_OK,
          { payload := some ((entries.getD (entries.length - 1) ([], 0)).1
              ++ buf.drop (entries.getD (entries.length - 1) ([], 0)).1.length)
            len := some (entries.getD (entries.length - 1) ([], 0)).1.length }, pm5)) ∧
      (fram_vslot_init K vsX pmR cfg).1 = ESP_OK ∧
      (fram_vslot_init K vsX pmR cfg).2.1 = vs2) := by
  obtain ⟨pmem2, g2, h2, inv2, hr1, e1, e2, e3, e4, _⟩ := vslot_run_spec K vs0 vs1 vs2
    pm pm1 pm2 p pmem cfg entries hK hmagic h hfind herased hinit happ
  obtain ⟨hsc, hsc3, hmp, hle, hcfg⟩ := vslot_init_ok_cfg K vs0 vs1 pm pm1 p cfg hfind hK hinit
  have hmedia := pm_any_media pm2 p pmem2 h2.pm_any
  have hsU : vs2.slot_count < U32 := by rw [e1, U32_eq]; omega
  have hslot := vslot_next_slot vs2 pmem2 entries inv2 hk1 g2.slot_count_pos hsU
  have hh : entries.length % vs2.slot_count < vs2.slot_count := Nat.mod_lt _ g2.slot_count_pos
  constructor
  · intro c f hA hl hcU hf
    have hA2 : PmArmed pmF p pmem2 c f := by
      obtain ⟨a, b, mem, size, hd, hfit, hview⟩ := hA
      exact ⟨a, b, mem, size, hd, hfit, fun i hi => (hview i hi).trans (hmedia i hi)⟩
    exact vslot_save_armed_fails vs2 p pmF pm2 pmem2 pmem2 payload now _ _ c f g2 h2 hA2 hslot
      rfl hh (by rw [e2]; exact hl) hcU hf
  · intro hfail
    have hF2 : PmAny pmF p pmem2 := pm_any_congr pmF p _ _ hF hmedia
    obtain ⟨hvs, pmem1, hA1, hkeep⟩ := vslot_save_any vs2 p pmF pm2 pmem2 pmem2 payload now _ _
      g2 h2 hF2 hslot rfl hh hfail
    have hR1 : PmOK pmR p pmem1 := pm_ok_congr pmR p _ _ hR (pm_any_media _ p pmem1 hA1)
    obtain ⟨⟨V, hview, hrecov⟩, hrec⟩ := vslot_failed_recovered vs2 p pmem2 pmem1 entries cfg g2
      inv2 hk1 hkU (by rw [e1]; exact hsc) e1 hkeep
    have hview2 : VslotView (vslot_empty p cfg) pmem1 V :=
      vslot_view_congr vs2 _ pmem1 _ e1 e4 e2 e3 hview
    obtain ⟨pm4, hi4, _⟩ := vslot_init_view K vsX pmR p pmem1 cfg V hfindR hR1 hsc hsc3 hmp hle
      (by omega) hmagic hcfg hview2
    rw [hrecov, ← vslot_after_eq vs2 p pmem2 entries cfg g2 inv2 hk1 e1 e2 e3 e4] at hi4
    have hd : vs2.has_data = true := by
      rw [inv2.has_data]; exact decide_eq_true (by omega)
    have has : vs2.active_slot = (entries.length - 1) % vs2.slot_count := inv2.active_slot
    rw [← has] at hrec
    obtain ⟨pm5, hld, _⟩ := vslot_load_rec vs2 p pmR pmem1 _ _ _ buf cap g2 hR1 hd
      (by rw [has]; exact Nat.mod_lt _ g2.slot_count_pos) (Nat.mod_lt _ (by decide))
      (inv2.bounded _ (by omega)) hcap hrec
    rw [hi4]
    exact ⟨hvs, ⟨pm5, hld⟩, rfl, rfl⟩

theorem pm_any_self (pm : fram_pm_t) (p : fram_partition_t) (pmem : Nat → Nat)
    (h : PmAny pm p pmem) : PmAny pm p (pm_media pm p) :=
  pm_any_congr pm p _ _ h (fun i hi => (pm_any_media pm p pmem h i hi).symm)

set_option maxRecDepth 4000 in
/-- `fram_vslot_save` on a mock armed to fail at its second operation: the
commit byte of the target slot is cleared, the header write fails, and the
call returns `ESP_FAIL` with the slot store object unchanged. -/
theorem vslot_save_fail_after_clear (vs : fram_vslot_t) (p : fram_partition_t)
    (pm pm0 : fram_pm_t) (pmem pmem0 : Nat → Nat) (payload : List Nat) (now slot ver c : Nat)
    (g : VslotGeom vs p) (h0 : PmOK pm0 p pmem0) (h : PmArmed pm p pmem c (c + 2))
    (hslot : (if vs.has_data then ((vs.active_slot + 1) % U32) % vs.slot_count else 0) = slot)
    (hver : (if vs.has_data then (vs.active_version + 1) % U32 else 1) = ver)
    (hcU : c + 2 < U32) (hh : slot < vs.slot_count) (hl : payload.length ≤ vs.max_payload) :
    ∃ pm1, fram_vslot_save vs pm payload now = (ESP_FAIL, vs, pm1) ∧
      PmArmed pm1 p (mem_write pmem
        (slot * vs.slot_size + VSLOT_HEADER_SIZE + vs.max_payload) [0]) (c + 2) (c + 2) := by
  obtain ⟨ho, hco, hpo, hfit, hsz⟩ := vslot_slot_offset_eq vs p pm0 pmem0 g h0 slot hh
  have hes := g.slot_size
  have hmpl := vslot_max_payload_lt vs p pm0 pmem0 g h0
  have h24 : VSLOT_HEADER_SIZE = 24 := rfl
  have hexp : (slot + 1) * vs.slot_size = slot * vs.slot_size + vs.slot_size := by
    rw [Nat.add_mul, Nat.one_mul]
  have hhl := vslot_to_bytes_length (vslot_header_for vs.magic ver now payload)
  obtain ⟨pm1, h1, hok1⟩ := pm_armed_write_ok pm p pmem c (c + 2)
    (slot * vs.slot_size + VSLOT_HEADER_SIZE + vs.max_payload) [0] h
    (by omega) (by omega) (by decide) (by simp only [List.length_singleton]; omega)
  obtain ⟨pm2, h2, hok2⟩ := pm_armed_write_fail pm1 p _ (c + 1) (c + 2)
    (slot * vs.slot_size)
    (vslot_header_for vs.magic ver now payload).to_bytes hok1
    (by rw [Nat.mod_eq_of_lt (by omega)])
    (by rw [hhl]; decide) (by rw [hhl]; omega)
  rw [Nat.mod_eq_of_lt (show c + 1 + 1 < U32 by omega)] at hok2
  have hhdr := vslot_save_hdr_eq vs.magic ver now payload (by omega)
  refine ⟨pm2, ?_, hok2⟩
  unfold fram_vslot_save fram_vslot_write_commit fram_vslot_lock
  simp only [g.mutex, mutex_take, g.part, hslot, hver, hco, ho, h1, hhdr, h2,
    Nat.not_lt.mpr hl, ne_eq, not_true_eq_false, reduceCtorEq, not_false_eq_true,
    false_and, if_false, if_true]

/-- The failed save on the example slot store: what the run, the armed mock
and the restart give, for any run of at least one save with payloads of at
most 16 bytes. -/
theorem example_vslot_fail_facts (cfg : fram_vslot_config_t)
    (hname : cfg.partition_name = [0x76, 0x73, 0x6C, 0x6F, 0x74])
    (hmp : cfg.max_payload = 16) (hsc : 2 ≤ cfg.slot_count) (hsc3 : cfg.slot_count ≤ 3)
    (hmagic : cfg.magic < U32) (entries : List (List Nat × Nat))
    (hb : ∀ e ∈ entries, e.1.length ≤ 16) (hk1 : 1 ≤ entries.length) :
    ∃ pmem2, VslotGeom (example_vslot_run cfg entries).2.1 example_vslot_part ∧
      PmOK (example_vslot_run cfg entries).2.2 example_vslot_part pmem2 ∧
      VslotAfter (example_vslot_run cfg entries).2.1 pmem2 entries ∧
      (example_vslot_run cfg entries).2.1.slot_count = cfg.slot_count ∧
      (example_vslot_run cfg entries).2.1.max_payload = cfg.max_payload ∧
      (example_vslot_run cfg entries).2.1.magic = cfg.magic ∧
      (example_vslot_run cfg entries).2.1.slot_size
        = (vslot_empty example_vslot_part cfg).slot_size ∧
      example_vslot_failed cfg entries =
        (ESP_FAIL, (example_vslot_run cfg entries).2.1, (example_vslot_failed cfg entries).2.2) ∧
      PmArmed (example_vslot_armed cfg entries) example_vslot_part
        (pm_media (example_vslot_run cfg entries).2.2 example_vslot_part) 0 2 ∧
      PmOK (example_vslot_restart cfg entries) example_vslot_part
        (pm_media (example_vslot_failed cfg entries).2.2 example_vslot_part) ∧
      PmOK (example_vslot_restart cfg entries) example_vslot_part
        (mem_write pmem2 (entries.length % (example_vslot_run cfg entries).2.1.slot_count
          * (example_vslot_run cfg entries).2.1.slot_size + VSLOT_HEADER_SIZE
          + (example_vslot_run cfg entries).2.1.max_payload) [0]) ∧
      fram_pm_find (example_vslot_restart cfg entries) cfg.partition_name
        = some example_vslot_part := by
  obtain ⟨hfind, hinit⟩ := example_vslot_init_ok cfg hname hmp hsc hsc3 hmagic
  obtain ⟨pmem2, g2, h2, inv2, hr1, e1, e2, e3, e4, hs2⟩ := vslot_run_spec example_K
    example_vslot0 _ _ example_pm _ _ example_vslot_part (fun _ => 0xFF) cfg entries
    (by decide) hmagic example_pm_vslot_ok hfind (fun _ _ => rfl)
    hinit (example_vslot_run_ok cfg hname hmp hsc hsc3 hmagic entries hb)
  obtain ⟨hA, _, hs3⟩ := pm_remount_armed (example_vslot_run cfg entries).2.2 example_vslot_part
    pmem2 32768 2 h2.pm_any (by decide) (by decide)
  obtain ⟨hA', _, _⟩ := pm_remount_armed (example_vslot_run cfg entries).2.2 example_vslot_part
    _ 32768 2 (pm_any_self _ _ _ h2.pm_any) (by decide) (by decide)
  have hsU : (example_vslot_run cfg entries).2.1.slot_count < U32 := by
    rw [e1, U32_eq]; omega
  have hslot := vslot_next_slot _ pmem2 entries inv2 hk1 g2.slot_count_pos hsU
  obtain ⟨pmF, hfl, hAF⟩ := vslot_save_fail_after_clear (example_vslot_run cfg entries).2.1
    example_vslot_part (example_vslot_armed cfg entries) (example_vslot_run cfg entries).2.2
    pmem2 pmem2 [7] 100 _ _ 0 g2 h2 hA hslot rfl (by decide)
    (Nat.mod_lt _ g2.slot_count_pos) (by rw [e2, hmp]; decide)
  have hfl2 : example_vslot_failed cfg entries
      = (ESP_FAIL, (example_vslot_run cfg entries).2.1, pmF) := hfl
  have hpm : (example_vslot_failed cfg entries).2.2 = pmF := by rw [hfl2]
  obtain ⟨hR1, hR2, hs5⟩ := pm_remount_ok pmF example_vslot_part _ 32768 hAF.armed_any
    (by decide) (by decide)
  have hs4 := fram_vslot_save_same (example_vslot_run cfg entries).2.1
    (example_vslot_armed cfg entries) [7] 100
  have hs4b : PmSame (example_vslot_armed cfg entries) pmF := by
    have : (fram_vslot_save (example_vslot_run cfg entries).2.1 (example_vslot_armed cfg entries)
      [7] 100).2.2 = pmF := hpm
    rw [this] at hs4
    exact hs4
  have hsame : PmSame example_pm (pm_remount pmF 32768) :=
    PmSame.trans_same _ _ _ (PmSame.trans_same _ _ _ (PmSame.trans_same _ _ _ hs2 hs3) hs4b) hs5
  have hrs : example_vslot_restart cfg entries = pm_remount pmF 32768 := by
    unfold example_vslot_restart
    rw [hpm]
  refine ⟨pmem2, g2, h2, inv2, e1, e2, e3, e4, ?_, hA', ?_, ?_, ?_⟩
  · rw [hpm]; exact hfl2
  · rw [hrs, hpm]; exact hR2
  · rw [hrs]; exact hR1
  · rw [hrs, fram_pm_find_same _ _ _ hsame]
    exact hfind

/-- Witness for C13: the two saves of the tests on the two-slot store, then a
save on the mock armed to fail at its second operation, which clears the commit
byte of the other slot and fails at the header. The save returns `ESP_FAIL`
with the slot store object unchanged; after a restart `fram_vslot_load`
returns the value saved last and `fram_vslot_init` gives back the slot store
object of before the failed save. -/
theorem vslot_save_failure_keeps_value_witness :
    (example_vslot_failed example_vslot_cfg example_vslot_entries).1 = ESP_FAIL ∧
    (example_vslot_failed example_vslot_cfg example_vslot_entries).2.1
      = (example_vslot_run example_vslot_cfg example_vslot_entries).2.1 ∧
    (∃ pm5, fram_vslot_load (example_vslot_run example_vslot_cfg example_vslot_entries).2.1
        (example_vslot_restart example_vslot_cfg example_vslot_entries)
        { payload := some [0, 0, 0, 0], len := some 4 } =
      (ESP_OK,
        { payload := some ((example_vslot_entries.getD (example_vslot_entries.length - 1)
              ([], 0)).1
            ++ [0, 0, 0, 0].drop (example_vslot_entries.getD (example_vslot_entries.length - 1)
              ([], 0)).1.length)
          len := some (example_vslot_entries.getD (example_vslot_entries.length - 1)
              ([], 0)).1.length }, pm5)) ∧
    (example_vslot_reinit example_vslot_cfg example_vslot_entries).1 = ESP_OK ∧
    (example_vslot_reinit example_vslot_cfg example_vslot_entries).2.1
      = (example_vslot_run example_vslot_cfg example_vslot_entries).2.1 := by
  obtain ⟨hfind, hinit⟩ := example_vslot_init_ok example_vslot_cfg rfl rfl (by decide)
    (by decide) (by decide)
  obtain ⟨pmem2, _, _, _, _, _, _, _, hfl, hA, hR, _, hfindR⟩ :=
    example_vslot_fail_facts example_vslot_cfg rfl rfl (by decide) (by decide) (by decide)
      example_vslot_entries (by decide) (by decide)
  have hw := vslot_save_failure_keeps_value example_K example_vslot0 _ _ example_vslot0
    example_pm _ _ (example_vslot_armed example_vslot_cfg example_vslot_entries)
    (example_vslot_restart example_vslot_cfg example_vslot_entries)
    example_vslot_part (fun _ => 0xFF) example_vslot_cfg example_vslot_entries [7] 100
    [0, 0, 0, 0] 4 (by decide) (by decide) example_pm_vslot_ok hfind (fun _ _ => rfl) hinit
    (example_vslot_run_ok example_vslot_cfg rfl rfl (by decide) (by decide) (by decide)
      example_vslot_entries (by decide))
    (by decide) (by decide) hA.armed_any hR hfindR (by decide)
  have hfail := hw.1 0 2 hA (by decide) (by decide) (by decide)
  have hw2 := hw.2 (by
    have : (fram_vslot_save (example_vslot_run example_vslot_cfg example_vslot_entries).2.1
      (example_vslot_armed example_vslot_cfg example_vslot_entries) [7] 100).1 = ESP_FAIL := hfail
    rw [this]; decide)
  exact ⟨hfail, hw2.1, hw2.2.1, hw2.2.2.1, hw2.2.2.2⟩

/-- Counterexample for C13: on the three-slot store of the example partition
after `2^32` saves the version counter has wrapped to 0 (active slot 0). A save
on the mock armed to fail at its second operation clears the commit byte of
slot 1 and fails at the header write: it returns `ESP_FAIL`. After a restart
`fram_vslot_init` selects slot 2 with version `2^32 - 1`, not the active slot
and version of before the failed save. -/
theorem vslot_save_failure_keeps_value_counterexample :
    (example_vslot_run example_vslot_cfg3 example_vslot_wrap).1 = ESP_OK ∧
    (example_vslot_run example_vslot_cfg3 example_vslot_wrap).2.1.active_slot = 0 ∧
    fram_vslot_get_version (example_vslot_run example_vslot_cfg3 example_vslot_wrap).2.1 = 0 ∧
    (example_vslot_failed example_vslot_cfg3 example_vslot_wrap).1 = ESP_FAIL ∧
    (example_vslot_reinit example_vslot_cfg3 example_vslot_wrap).1 = ESP_OK ∧
    (example_vslot_reinit example_vslot_cfg3 example_vslot_wrap).2.1.active_slot = 2 ∧
    fram_vslot_get_version (example_vslot_reinit example_vslot_cfg3 example_vslot_wrap).2.1
      = 4294967295 := by
  have hb : ∀ e ∈ example_vslot_wrap, e.1.length ≤ 16 := example_vslot_wrap_bounded
  have hlen := example_vslot_wrap_length
  obtain ⟨hfind, hinit⟩ := example_vslot_init_ok example_vslot_cfg3 rfl rfl (by decide)
    (by decide) (by decide)
  obtain ⟨pmem2, g2, h2, inv2, e1, e2, e3, e4, hfl, _, _, hR, hfindR⟩ :=
    example_vslot_fail_facts example_vslot_cfg3 rfl rfl (by decide) (by decide) (by decide)
      example_vslot_wrap hb (by rw [hlen]; decide)
  have hn3 : (example_vslot_run example_vslot_cfg3 example_vslot_wrap).2.1.slot_count = 3 := e1
  obtain ⟨hview, _⟩ := vslot_cleared_view_ok _ example_vslot_part pmem2 _ example_vslot_wrap g2
    inv2 (by rw [hlen]; decide) (by rw [hn3]; decide)
    (region_cleared_byte pmem2 _ _ _ (by omega) (by
      have := g2.slot_size
      omega))
  have hview2 := vslot_view_congr _ (vslot_empty example_vslot_part example_vslot_cfg3) _ _
    e1 e4 e2 e3 hview
  obtain ⟨pm4, hi4, _⟩ := vslot_init_view example_K example_vslot0
    (example_vslot_restart example_vslot_cfg3 example_vslot_wrap) example_vslot_part _
    example_vslot_cfg3 _ hfindR hR (by decide) (by decide) (by decide) (by decide) (by decide)
    (by decide) (by decide) hview2
  rw [hn3, hlen] at hi4
  have hwin := vslot_window_view_window (4294967296 + 1 - 3) 4294967296 3 (by decide) (by decide)
  have hrec := vslot_recovered_window example_vslot_part example_vslot_cfg3 _
    (4294967296 + 1 - 3) 4294967296 4294967294 hwin (by decide) (by decide) (by decide)
    (fun i h1 h2 hne => by
      have hi : i = 4294967295 := by omega
      subst hi
      decide)
  rw [hrec] at hi4
  have hi5 : example_vslot_reinit example_vslot_cfg3 example_vslot_wrap = _ := hi4
  have h2a : (4294967294 : Nat) % example_vslot_cfg3.slot_count = 2 := by decide
  have h2b : ((4294967294 : Nat) + 1) % U32 = 4294967295 := by decide
  refine ⟨?_, ?_, ?_, by rw [hfl], by rw [hi5], by rw [hi5]; exact h2a,
    by rw [hi5]; exact h2b⟩
  · unfold example_vslot_run
    rw [example_vslot_run_ok example_vslot_cfg3 rfl rfl (by decide) (by decide) (by decide)
      example_vslot_wrap hb]
  · rw [inv2.active_slot, hlen, hn3]
  · rw [fram_vslot_get_version_eq, inv2.active_version, hlen]
    decide

/-! ## Key/value store: the loops over arbitrary partition bytes -/

theorem kvs_valid_key_len (K : Kconfig) (kvs : fram_kvs_t) (hdr : fram_kvs_header_t)
    (h : fram_kvs_header_valid K kvs hdr = true) :
    hdr.magic = kvs.magic ∧ 1 ≤ hdr.key_len ∧ hdr.key_len ≤ 15 ∧
      hdr.value_len ≤ K.FRAM_KVS_MAX_VALUE := by
  unfold fram_kvs_header_valid at h
  have h15 : FRAM_KVS_KEY_MAX = 15 := rfl
  split_ifs at h with h1 h2 h3
  refine ⟨by simpa using h1, by omega, by omega, by omega⟩

/-- One iteration of the loop of `fram_kvs_scan` on a working partition, at
an offset at least 65572 bytes below `2^32` (no 32-bit sum wraps): the loop is
left with `ESP_OK` and its state untouched when the iteration accepts no
record, and goes on behind the record otherwise. -/
theorem kvs_scan_iter (K : Kconfig) (kvs : fram_kvs_t) (p : fram_partition_t)
    (pmem : Nat → Nat) (pm : fram_pm_t) (key : List Nat) (fuel off : Nat)
    (st : kvs_scan_t) (key_buf : List Nat)
    (hp : kvs.part = some p) (h : PmOK pm p pmem) (hb : off + 65572 ≤ U32)
    (hvl : off + 21 ≤ p.size →
      (fram_kvs_header_of_bytes (mem_read pmem off 20)).value_len < 65536) :
    ∃ pm1 kb1, PmOK pm1 p pmem ∧
      fram_kvs_scan_loop K kvs p key (fuel + 1) pm off st key_buf =
        match kvs_accept K kvs p pmem off with
        | none => (ESP_OK, st, pm1)
        | some hdr =>
            fram_kvs_scan_loop K kvs p key fuel pm1
              (off + (20 + hdr.key_len + hdr.value_len + 1))
              (kvs_scan_upd pmem key st off hdr) kb1 := by
  rw [U32_eq] at hb
  have h20 : KVS_HEADER_SIZE = 20 := rfl
  have c0 : (off + KVS_HEADER_SIZE + 1) % U32 = off + 20 + 1 :=
    Nat.mod_eq_of_lt (by rw [U32_eq]; show off + 20 + 1 < 4294967296; omega)
  by_cases c1 : off + 20 + 1 ≤ p.size
  swap
  · refine ⟨pm, key_buf, h, ?_⟩
    have hacc : kvs_accept K kvs p pmem off = none := by
      unfold kvs_accept
      rw [if_neg (by rw [h20]; exact c1)]
    rw [hacc, fram_kvs_scan_loop, if_neg (by rw [c0]; exact c1)]
  have hvl := hvl (by omega)
  have hsz := pm_size_lt pm p pmem h
  rw [U32_eq] at hsz
  obtain ⟨pm1, h1, hok1⟩ := fram_pm_read_ok pm p pmem off 20 h (by decide) (by omega)
  obtain ⟨hdr, hhdr⟩ : ∃ hdr, hdr = fram_kvs_header_of_bytes (mem_read pmem off 20) := ⟨_, rfl⟩
  rw [← hhdr] at hvl
  have c2 : fram_kvs_read_header kvs pm off = (ESP_OK, hdr, pm1) := by
    unfold fram_kvs_read_header
    rw [hp]
    show ((fram_pm_read pm (some p) off 20).1,
      fram_kvs_header_of_bytes (fram_pm_read pm (some p) off 20).2.1,
      (fram_pm_read pm (some p) off 20).2.2) = _
    rw [h1, hhdr]
  by_cases cv : fram_kvs_header_valid K kvs hdr = true
  swap
  · refine ⟨pm1, key_buf, hok1, ?_⟩
    have hacc : kvs_accept K kvs p pmem off = none := by
      unfold kvs_accept
      rw [if_pos (by rw [h20]; exact c1)]
      simp only [h20, ← hhdr, cv, Bool.not_false, if_true]
    rw [hacc, fram_kvs_scan_loop, if_pos (by rw [c0]; exact c1)]
    simp only [c2, ne_eq, not_true_eq_false, if_false, cv, Bool.not_false, if_true]
  obtain ⟨_, hk1, hk2, _⟩ := kvs_valid_key_len K kvs hdr cv
  have c3 : fram_kvs_record_size hdr = 20 + hdr.key_len + hdr.value_len + 1 := by
    unfold fram_kvs_record_size
    exact Nat.mod_eq_of_lt (by rw [U32_eq]; show 20 + _ + _ + 1 < 4294967296; omega)
  have c6 : (off + (20 + hdr.key_len + hdr.value_len + 1)) % U32
      = off + (20 + hdr.key_len + hdr.value_len + 1) :=
    Nat.mod_eq_of_lt (by rw [U32_eq]; omega)
  by_cases cf : off + (20 + hdr.key_len + hdr.value_len + 1) > p.size
  · refine ⟨pm1, key_buf, hok1, ?_⟩
    have hacc : kvs_accept K kvs p pmem off = none := by
      unfold kvs_accept
      rw [if_pos (by rw [h20]; exact c1)]
      simp only [h20, ← hhdr, cv, Bool.not_true, Bool.false_eq_true, if_false, cf, if_true]
    have c4 : off > p.size ∨ 20 + hdr.key_len + hdr.value_len + 1 > p.size ∨
        off + (20 + hdr.key_len + hdr.value_len + 1) > p.size := Or.inr (Or.inr cf)
    rw [hacc, fram_kvs_scan_loop, if_pos (by rw [c0]; exact c1)]
    simp only [c2, ne_eq, not_true_eq_false, if_false, cv, Bool.not_true, Bool.false_eq_true,
      c3, c6, c4, if_true]
  have c4 : ¬ (off > p.size ∨ 20 + hdr.key_len + hdr.value_len + 1 > p.size ∨
      off + (20 + hdr.key_len + hdr.value_len + 1) > p.size) := by omega
  obtain ⟨pm2, h2, hok2⟩ := fram_pm_read_ok pm1 p pmem
    (off + 20 + hdr.key_len + hdr.value_len) 1 hok1 (by decide) (by omega)
  have c5 : fram_kvs_read_commit kvs pm1 off hdr.key_len hdr.value_len
      = (ESP_OK, pmem (off + 20 + hdr.key_len + hdr.value_len), pm2) := by
    unfold fram_kvs_read_commit fram_kvs_commit_offset
    rw [hp, Nat.mod_eq_of_lt (by rw [U32_eq]; show off + 20 + _ + _ < 4294967296; omega)]
    show ((fram_pm_read pm1 (some p) (off + 20 + hdr.key_len + hdr.value_len) 1).1,
      (fram_pm_read pm1 (some p) (off + 20 + hdr.key_len + hdr.value_len) 1).2.1.headD 0,
      (fram_pm_read pm1 (some p) (off + 20 + hdr.key_len + hdr.value_len) 1).2.2) = _
    rw [h2, mem_read_one]
    rfl
  by_cases cc : pmem (off + 20 + hdr.key_len + hdr.value_len) = FRAM_KVS_COMMIT
  swap
  · refine ⟨pm2, key_buf, hok2, ?_⟩
    have hacc : kvs_accept K kvs p pmem off = none := by
      unfold kvs_accept
      rw [if_pos (by rw [h20]; exact c1)]
      simp only [h20, ← hhdr, cv, Bool.not_true, Bool.false_eq_true, if_false, cf, cc, ne_eq,
        not_false_eq_true, if_true]
    rw [hacc, fram_kvs_scan_loop, if_pos (by rw [c0]; exact c1)]
    simp only [c2, ne_eq, not_true_eq_false, if_false, cv, Bool.not_true, Bool.false_eq_true,
      c3, c6, c4, c5, cc, not_false_eq_true, if_true]
  obtain ⟨pm3, h3, hok3⟩ := kvs_compute_crc_ok kvs p pmem pm2 off hdr
    (mem_read pmem (off + 20) hdr.key_len) (mem_read pmem (off + 20 + hdr.key_len) hdr.value_len)
    key_buf hp hok2 (by rw [mem_read_length]) (by rw [mem_read_length])
    (by rw [mem_read_length]; exact hk1) (by rw [mem_read_length, mem_read_length]; omega)
    (by rw [mem_read_length]) (by rw [mem_read_length, mem_read_length])
  rw [mem_read_length] at h3
  refine ⟨pm3, mem_read pmem (off + 20) hdr.key_len ++ key_buf.drop hdr.key_len, hok3, ?_⟩
  by_cases hcrc : fram_crc32_le (fram_crc32_le (fram_crc32_le 0 hdr.head_bytes)
        (mem_read pmem (off + 20) hdr.key_len))
        (mem_read pmem (off + 20 + hdr.key_len) hdr.value_len) = hdr.crc32
  swap
  · have hacc : kvs_accept K kvs p pmem off = none := by
      unfold kvs_accept
      rw [if_pos (by rw [h20]; exact c1)]
      simp only [h20, ← hhdr, cv, Bool.not_true, Bool.false_eq_true, if_false, cf, cc, ne_eq,
        not_true_eq_false, hcrc, not_false_eq_true, if_true]
    rw [hacc, fram_kvs_scan_loop, if_pos (by rw [c0]; exact c1)]
    simp only [c2, ne_eq, not_true_eq_false, if_false, cv, Bool.not_true, Bool.false_eq_true,
      c3, c6, c4, c5, cc, h3, hcrc, if_true]
  · have hacc : kvs_accept K kvs p pmem off = some hdr := by
      unfold kvs_accept
      rw [if_pos (by rw [h20]; exact c1)]
      simp only [h20, ← hhdr, cv, Bool.not_true, Bool.false_eq_true, if_false, cf, cc, ne_eq,
        not_true_eq_false, hcrc]
    have hupd : (if hdr.key_len = key.length ∧
          List.take key.length (mem_read pmem (off + 20) hdr.key_len
            ++ List.drop hdr.key_len key_buf) = key then
        ({ found := true, deleted := decide ¬hdr.flags &&& FRAM_KVS_FLAG_DELETED = 0,
           last_hdr := hdr, last_offset := off } : kvs_scan_t)
        else st) = kvs_scan_upd pmem key st off hdr := by
      unfold kvs_scan_upd
      by_cases hk : hdr.key_len = key.length
      · have ht : List.take key.length (mem_read pmem (off + 20) hdr.key_len
            ++ List.drop hdr.key_len key_buf) = mem_read pmem (off + 20) hdr.key_len := by
          rw [← hk, List.take_append_of_le_length (by rw [mem_read_length]),
            List.take_of_length_le (by rw [mem_read_length])]
        rw [ht]
        rfl
      · rw [if_neg (fun e => hk e.1), if_neg (fun e => hk e.1)]
    rw [hacc, fram_kvs_scan_loop, if_pos (by rw [c0]; exact c1)]
    simp only [c2, ne_eq, not_true_eq_false, if_false, cv, Bool.not_true, Bool.false_eq_true,
      c3, c6, c4, c5, cc, h3, hcrc, if_true, reduceCtorEq, hupd]

/-- One iteration of the loop of `fram_kvs_find_end` on a working partition, at
an offset at least 65572 bytes below `2^32` (no 32-bit sum wraps): the loop is
left with `ESP_OK`, the offset and `next_seq` when the iteration accepts no
record, and goes on behind the record otherwise. -/
theorem kvs_find_end_iter (K : Kconfig) (kvs : fram_kvs_t) (p : fram_partition_t)
    (pmem : Nat → Nat) (pm : fram_pm_t) (fuel off next_seq : Nat) (key_buf : List Nat)
    (hp : kvs.part = some p) (h : PmOK pm p pmem) (hb : off + 65572 ≤ U32)
    (hvl : off + 21 ≤ p.size →
      (fram_kvs_header_of_bytes (mem_read pmem off 20)).value_len < 65536) :
    ∃ pm1 kb1, PmOK pm1 p pmem ∧
      fram_kvs_find_end_loop K kvs p (fuel + 1) pm off next_seq key_buf =
        match kvs_accept K kvs p pmem off with
        | none => (ESP_OK, off, next_seq, pm1)
        | some hdr =>
            fram_kvs_find_end_loop K kvs p fuel pm1
              (off + (20 + hdr.key_len + hdr.value_len + 1))
              (kvs_seq_upd next_seq hdr.seq) kb1 := by
  rw [U32_eq] at hb
  have h20 : KVS_HEADER_SIZE = 20 := rfl
  have c0 : (off + KVS_HEADER_SIZE + 1) % U32 = off + 20 + 1 :=
    Nat.mod_eq_of_lt (by rw [U32_eq]; show off + 20 + 1 < 4294967296; omega)
  by_cases c1 : off + 20 + 1 ≤ p.size
  swap
  · refine ⟨pm, key_buf, h, ?_⟩
    have hacc : kvs_accept K kvs p pmem off = none := by
      unfold kvs_accept
      rw [if_neg (by rw [h20]; exact c1)]
    rw [hacc, fram_kvs_find_end_loop, if_neg (by rw [c0]; exact c1)]
  have hvl := hvl (by omega)
  have hsz := pm_size_lt pm p pmem h
  rw [U32_eq] at hsz
  obtain ⟨pm1, h1, hok1⟩ := fram_pm_read_ok pm p pmem off 20 h (by decide) (by omega)
  obtain ⟨hdr, hhdr⟩ : ∃ hdr, hdr = fram_kvs_header_of_bytes (mem_read pmem off 20) := ⟨_, rfl⟩
  rw [← hhdr] at hvl
  have c2 : fram_kvs_read_header kvs pm off = (ESP_OK, hdr, pm1) := by
    unfold fram_kvs_read_header
    rw [hp]
    show ((fram_pm_read pm (some p) off 20).1,
      fram_kvs_header_of_bytes (fram_pm_read pm (some p) off 20).2.1,
      (fram_pm_read pm (some p) off 20).2.2) = _
    rw [h1, hhdr]
  by_cases cv : fram_kvs_header_valid K kvs hdr = true
  swap
  · refine ⟨pm1, key_buf, hok1, ?_⟩
    have hacc : kvs_accept K kvs p pmem off = none := by
      unfold kvs_accept
      rw [if_pos (by rw [h20]; exact c1)]
      simp only [h20, ← hhdr, cv, Bool.not_false, if_true]
    rw [hacc, fram_kvs_find_end_loop, if_pos (by rw [c0]; exact c1)]
    simp only [c2, ne_eq, not_true_eq_false, if_false, cv, Bool.not_false, if_true]
  obtain ⟨_, hk1, hk2, _⟩ := kvs_valid_key_len K kvs hdr cv
  have c3 : fram_kvs_record_size hdr = 20 + hdr.key_len + hdr.value_len + 1 := by
    unfold fram_kvs_record_size
    exact Nat.mod_eq_of_lt (by rw [U32_eq]; show 20 + _ + _ + 1 < 4294967296; omega)
  have c6 : (off + (20 + hdr.key_len + hdr.value_len + 1)) % U32
      = off + (20 + hdr.key_len + hdr.value_len + 1) :=
    Nat.mod_eq_of_lt (by rw [U32_eq]; omega)
  by_cases cf : off + (20 + hdr.key_len + hdr.value_len + 1) > p.size
  · refine ⟨pm1, key_buf, hok1, ?_⟩
    have hacc : kvs_accept K kvs p pmem off = none := by
      unfold kvs_accept
      rw [if_pos (by rw [h20]; exact c1)]
      simp only [h20, ← hhdr, cv, Bool.not_true, Bool.false_eq_true, if_false, cf, if_true]
    have c4 : off > p.size ∨ 20 + hdr.key_len + hdr.value_len + 1 > p.size ∨
        off + (20 + hdr.key_len + hdr.value_len + 1) > p.size := Or.inr (Or.inr cf)
    rw [hacc, fram_kvs_find_end_loop, if_pos (by rw [c0]; exact c1)]
    simp only [c2, ne_eq, not_true_eq_false, if_false, cv, Bool.not_true, Bool.false_eq_true,
      c3, c6, c4, if_true]
  have c4 : ¬ (off > p.size ∨ 20 + hdr.key_len + hdr.value_len + 1 > p.size ∨
      off + (20 + hdr.key_len + hdr.value_len + 1) > p.size) := by omega
  obtain ⟨pm2, h2, hok2⟩ := fram_pm_read_ok pm1 p pmem
    (off + 20 + hdr.key_len + hdr.value_len) 1 hok1 (by decide) (by omega)
  have c5 : fram_kvs_read_commit kvs pm1 off hdr.key_len hdr.value_len
      = (ESP_OK, pmem (off + 20 + hdr.key_len + hdr.value_len), pm2) := by
    unfold fram_kvs_read_commit fram_kvs_commit_offset
    rw [hp, Nat.mod_eq_of_lt (by rw [U32_eq]; show off + 20 + _ + _ < 4294967296; omega)]
    show ((fram_pm_read pm1 (some p) (off + 20 + hdr.key_len + hdr.value_len) 1).1,
      (fram_pm_read pm1 (some p) (off + 20 + hdr.key_len + hdr.value_len) 1).2.1.headD 0,
      (fram_pm_read pm1 (some p) (off + 20 + hdr.key_len + hdr.value_len) 1).2.2) = _
    rw [h2, mem_read_one]
    rfl
  by_cases cc : pmem (off + 20 + hdr.key_len + hdr.value_len) = FRAM_KVS_COMMIT
  swap
  · refine ⟨pm2, key_buf, hok2, ?_⟩
    have hacc : kvs_accept K kvs p pmem off = none := by
      unfold kvs_accept
      rw [if_pos (by rw [h20]; exact c1)]
      simp only [h20, ← hhdr, cv, Bool.not_true, Bool.false_eq_true, if_false, cf, cc, ne_eq,
        not_false_eq_true, if_true]
    rw [hacc, fram_kvs_find_end_loop, if_pos (by rw [c0]; exact c1)]
    simp only [c2, ne_eq, not_true_eq_false, if_false, cv, Bool.not_true, Bool.false_eq_true,
      c3, c6, c4, c5, cc, not_false_eq_true, if_true]
  obtain ⟨pm3, h3, hok3⟩ := kvs_compute_crc_ok kvs p pmem pm2 off hdr
    (mem_read pmem (off + 20) hdr.key_len) (mem_read pmem (off + 20 + hdr.key_len) hdr.value_len)
    key_buf hp hok2 (by rw [mem_read_length]) (by rw [mem_read_length])
    (by rw [mem_read_length]; exact hk1) (by rw [mem_read_length, mem_read_length]; omega)
    (by rw [mem_read_length]) (by rw [mem_read_length, mem_read_length])
  rw [mem_read_length] at h3
  refine ⟨pm3, mem_read pmem (off + 20) hdr.key_len ++ key_buf.drop hdr.key_len, hok3, ?_⟩
  by_cases hcrc : fram_crc32_le (fram_crc32_le (fram_crc32_le 0 hdr.head_bytes)
        (mem_read pmem (off + 20) hdr.key_len))
        (mem_read pmem (off + 20 + hdr.key_len) hdr.value_len) = hdr.crc32
  swap
  · have hacc : kvs_accept K kvs p pmem off = none := by
      unfold kvs_accept
      rw [if_pos (by rw [h20]; exact c1)]
      simp only [h20, ← hhdr, cv, Bool.not_true, Bool.false_eq_true, if_false, cf, cc, ne_eq,
        not_true_eq_false, hcrc, not_false_eq_true, if_true]
    rw [hacc, fram_kvs_find_end_loop, if_pos (by rw [c0]; exact c1)]
    simp only [c2, ne_eq, not_true_eq_false, if_false, cv, Bool.not_true, Bool.false_eq_true,
      c3, c6, c4, c5, cc, h3, hcrc, if_true]
  · have hacc : kvs_accept K kvs p pmem off = some hdr := by
      unfold kvs_accept
      rw [if_pos (by rw [h20]; exact c1)]
      simp only [h20, ← hhdr, cv, Bool.not_true, Bool.false_eq_true, if_false, cf, cc, ne_eq,
        not_true_eq_false, hcrc]
    rw [hacc, fram_kvs_find_end_loop, if_pos (by rw [c0]; exact c1)]
    simp only [c2, ne_eq, not_true_eq_false, if_false, cv, Bool.not_true, Bool.false_eq_true,
      c3, c6, c4, c5, cc, h3, hcrc, if_true, reduceCtorEq, kvs_seq_upd]

/-- The records a scan accepts depend on the store only through its magic. -/
theorem kvs_accept_magic (K : Kconfig) (kvs kvs1 : fram_kvs_t) (p : fram_partition_t)
    (pmem : Nat → Nat) (off : Nat) (hm : kvs.magic = kvs1.magic) :
    kvs_accept K kvs p pmem off = kvs_accept K kvs1 p pmem off := by
  unfold kvs_accept fram_kvs_header_valid
  rw [hm]

/-- The header of the record of a call has the lengths of the call. -/
theorem kvs_header_for_lens (magic seq : Nat) (op : kvs_op) :
    (kvs_header_for magic seq op).key_len = op.key.length ∧
    (kvs_header_for magic seq op).value_len = op.value.length ∧
    (kvs_header_for magic seq op).seq = seq ∧
    (kvs_header_for magic seq op).flags = op.flags := ⟨rfl, rfl, rfl, rfl⟩

/-- A committed record of a call inside the partition is accepted. -/
theorem kvs_accept_rec (K : Kconfig) (kvs : fram_kvs_t) (p : fram_partition_t)
    (pmem : Nat → Nat) (off seq : Nat) (op : kvs_op)
    (hm : kvs.magic < U32) (hs : seq < U32) (hv : op.valid K) (hfit : off + op.size ≤ p.size)
    (hrec : KRec pmem off kvs.magic seq op) :
    kvs_accept K kvs p pmem off = some (kvs_header_for kvs.magic seq op) := by
  have hsize := kvs_op_size_eq op
  have h20 : KVS_HEADER_SIZE = 20 := rfl
  unfold KRec at hrec
  rw [hsize] at hrec
  obtain ⟨i1, i2, i3, i4⟩ := kvs_image_parts pmem off _ op.key op.value FRAM_KVS_COMMIT
    (kvs_to_bytes_length _) hrec
  have hrt := kvs_header_for_roundtrip K kvs.magic seq op (kvs_header_for kvs.magic seq op).crc32
    hm hs hv (by rw [kvs_header_for_crc]; exact fram_crc32_le_lt _ _)
  have hrt2 : fram_kvs_header_of_bytes (kvs_header_for kvs.magic seq op).to_bytes
      = kvs_header_for kvs.magic seq op := hrt
  have hval := kvs_header_for_valid K kvs seq op (kvs_header_for kvs.magic seq op).crc32 hv
  have hval2 : fram_kvs_header_valid K kvs (kvs_header_for kvs.magic seq op) = true := hval
  obtain ⟨l1, l2, _, _⟩ := kvs_header_for_lens kvs.magic seq op
  unfold kvs_accept
  rw [if_pos (by rw [h20]; omega)]
  simp only [h20, i1, hrt2, hval2, l1, l2, i2, i3, i4, Bool.not_true, Bool.false_eq_true,
    if_false, ne_eq, not_true_eq_false]
  rw [if_neg (by omega), if_neg (by rw [← kvs_header_for_crc]; exact fun hn => hn rfl)]

/-- An offset where no record is accepted is an end of the log for the scan. -/
theorem kvs_stop_of_accept (K : Kconfig) (kvs : fram_kvs_t) (p : fram_partition_t)
    (pmem : Nat → Nat) (off : Nat) (hp : kvs.part = some p) (hb : off + 65572 ≤ U32)
    (hvl : off + 21 ≤ p.size →
      (fram_kvs_header_of_bytes (mem_read pmem off 20)).value_len < 65536)
    (hacc : kvs_accept K kvs p pmem off = none) :
    KStop K kvs p pmem off := by
  intro key fuel pm st key_buf h
  obtain ⟨pm1, kb1, hok1, h1⟩ := kvs_scan_iter K kvs p pmem pm key fuel off st key_buf hp h hb hvl
  rw [hacc] at h1
  exact ⟨pm1, h1, hok1⟩

/-- No record is accepted where the partition is erased. -/
theorem kvs_accept_erased (K : Kconfig) (kvs : fram_kvs_t) (p : fram_partition_t)
    (pmem : Nat → Nat) (off : Nat)
    (herased : ∀ j, off ≤ j → j < p.size → pmem j = 0xFF) :
    kvs_accept K kvs p pmem off = none := by
  have h20 : KVS_HEADER_SIZE = 20 := rfl
  unfold kvs_accept
  by_cases c1 : off + KVS_HEADER_SIZE + 1 ≤ p.size
  · rw [if_pos c1]
    rw [h20] at c1
    have hinv := kvs_erased_header_invalid K kvs pmem off
      (fun i hi => herased (off + i) (by omega) (by omega))
    simp only [h20, hinv, Bool.not_false, if_true]
  · rw [if_neg c1]

/-- The header read where the partition is erased has a 16-bit `value_len`. -/
theorem kvs_erased_value_len (pmem : Nat → Nat) (off : Nat)
    (herased : ∀ i, i < 20 → pmem (off + i) = 0xFF) :
    (fram_kvs_header_of_bytes (mem_read pmem off 20)).value_len < 65536 := by
  have hr : mem_read pmem off 20 = List.replicate 20 0xFF := by
    apply List.ext_getElem
    · rw [mem_read_length, List.length_replicate]
    · intro i h1 h2
      rw [mem_read_length] at h1
      simp only [mem_read, List.getElem_map, List.getElem_range, List.getElem_replicate]
      exact herased i h1
  rw [hr]
  decide

/-! ## Key/value store: the sequence numbers of the log -/

/-- A numbered log only depends on the bytes of its records. -/
theorem klogseq_congr (pmem pmem1 : Nat → Nat) (magic : Nat) :
    ∀ (ops : List kvs_op) (off seq : Nat),
      (∀ a, off ≤ a → a < off + kvs_log_size ops → pmem1 a = pmem a) →
      KLogSeq pmem magic off seq ops → KLogSeq pmem1 magic off seq ops := by
  intro ops
  induction ops with
  | nil => intro off seq _ _; trivial
  | cons op rest ih =>
    intro off seq hsame hlog
    obtain ⟨hrec, hrest⟩ := hlog
    rw [kvs_log_size_cons] at hsame
    refine ⟨?_, ih (off + op.size) (seq + 1) (fun a h1 h2 => hsame a (by omega) (by omega))
      hrest⟩
    unfold KRec at hrec ⊢
    rw [← hrec]
    exact mem_read_congr _ _ _ _ (fun i hi => hsame (off + i) (by omega) (by omega))

/-- A numbered log followed by the record with the next number is a numbered
log. -/
theorem klogseq_snoc (pmem : Nat → Nat) (magic : Nat) (op : kvs_op) :
    ∀ (ops : List kvs_op) (off seq : Nat), KLogSeq pmem magic off seq ops →
      KRec pmem (off + kvs_log_size ops) magic (seq + ops.length) op →
      KLogSeq pmem magic off seq (ops ++ [op]) := by
  intro ops
  induction ops with
  | nil =>
    intro off seq _ hrec
    rw [kvs_log_size_nil, Nat.add_zero, List.length_nil, Nat.add_zero] at hrec
    exact ⟨hrec, trivial⟩
  | cons o rest ih =>
    intro off seq hlog hrec
    obtain ⟨h1, hrest⟩ := hlog
    rw [kvs_log_size_cons, ← Nat.add_assoc, List.length_cons,
      show seq + (rest.length + 1) = seq + 1 + rest.length by omega] at hrec
    exact ⟨h1, ih (off + o.size) (seq + 1) hrest hrec⟩

/-- A numbered log is a log. -/
theorem klogseq_log (pmem : Nat → Nat) (magic : Nat) :
    ∀ (ops : List kvs_op) (off seq : Nat), seq + ops.length ≤ U32 →
      KLogSeq pmem magic off seq ops → KLog pmem magic off ops := by
  intro ops
  induction ops with
  | nil => intro off seq _ _; trivial
  | cons o rest ih =>
    intro off seq hlen hlog
    rw [List.length_cons] at hlen
    exact ⟨⟨seq, by omega, hlog.1⟩, ih (off + o.size) (seq + 1) (by omega) hlog.2⟩

/-- A call whose record fits the partition behind `write_offset` succeeds and
appends its record with the next sequence number. -/
theorem kvs_commit_exact (K : Kconfig) (kvs : fram_kvs_t) (p : fram_partition_t)
    (pmem : Nat → Nat) (pm : fram_pm_t) (ops : List kvs_op) (op : kvs_op)
    (he : KvsExact K kvs p pmem ops) (h : PmOK pm p pmem) (hv : op.valid K)
    (hfit : kvs.write_offset + op.size ≤ p.size) :
    ∃ kvs1 pm1 pmem1, kvs_commit_record kvs pm p op = (ESP_OK, kvs1, pm1) ∧
      PmOK pm1 p pmem1 ∧ KvsExact K kvs1 p pmem1 (ops ++ [op]) := by
  have ha := he.after
  have hsz := pm_size_lt pm p pmem h
  have hsz2 := hsz
  rw [U32_eq] at hsz2
  have hsize := kvs_op_size_eq op
  have hlen := kvs_log_size_ge_length ops
  have hoff := ha.offset
  obtain ⟨pm1, pmem1, h1, hok1, hrec, hframe⟩ := kvs_write_record_ok kvs p pmem pm
    (kvs_header_for kvs.magic kvs.next_seq op) op.key op.value ha.part h rfl rfl hv.1
    (by omega)
  have hmod : (kvs.write_offset + op.size % U32) % U32 = kvs.write_offset + op.size := by
    rw [U32_eq, Nat.mod_eq_of_lt (show op.size < 4294967296 by omega),
      Nat.mod_eq_of_lt (by omega)]
  have hrec2 : KRec pmem1 kvs.write_offset kvs.magic kvs.next_seq op := by
    unfold KRec
    rw [hsize]
    exact hrec
  have hframe2 : ∀ a, (a < kvs.write_offset ∨ kvs.write_offset + op.size ≤ a) →
      pmem1 a = pmem a := fun a ha2 => hframe a (by omega)
  refine ⟨_, pm1, pmem1, ?_, hok1,
    ⟨kvs_after_snoc K kvs p pmem pmem1 ops op ha hv hfit hsz hrec2 hframe2, he.ready, ?_, ?_⟩⟩
  · unfold kvs_commit_record
    rw [if_neg (by rw [hmod]; omega)]
    simp only [h1, if_true]
  · show (kvs.next_seq + 1) % U32 = (ops ++ [op]).length
    rw [he.seq, List.length_append, List.length_singleton, U32_eq]
    exact Nat.mod_eq_of_lt (by omega)
  · show KLogSeq pmem1 kvs.magic 0 0 (ops ++ [op])
    apply klogseq_snoc
    · exact klogseq_congr pmem pmem1 kvs.magic ops 0 0
        (fun a _ h2 => hframe2 a (Or.inl (by omega))) he.log
    · rw [Nat.zero_add, Nat.zero_add, ← hoff, ← he.seq]
      exact hrec2

/-- A successful call appends its record with the next sequence number. -/
theorem kvs_apply_exact (K : Kconfig) (kvs kvs1 : fram_kvs_t) (p : fram_partition_t)
    (pmem : Nat → Nat) (pm pm1 : fram_pm_t) (ops : List kvs_op) (op : kvs_op)
    (he : KvsExact K kvs p pmem ops) (h : PmOK pm p pmem)
    (hr : fram_kvs_apply K kvs pm op = (ESP_OK, kvs1, pm1)) :
    ∃ pmem1, PmOK pm1 p pmem1 ∧ KvsExact K kvs1 p pmem1 (ops ++ [op]) := by
  have ha := he.after
  have hv : op.valid K := by
    by_contra hn
    exact kvs_apply_invalid K kvs pm op hn (by rw [hr])
  rw [kvs_apply_eq K kvs pm p op ha.part ha.mutex hv] at hr
  by_cases hfit : kvs.write_offset + op.size ≤ p.size
  · obtain ⟨kvs2, pm2, pmem2, h2, hok2, ha2⟩ := kvs_commit_exact K kvs p pmem pm ops op he h hv
      hfit
    rw [h2] at hr
    have e1 : kvs2 = kvs1 := (Prod.mk.inj (Prod.mk.inj hr).2).1
    have e2 : pm2 = pm1 := (Prod.mk.inj (Prod.mk.inj hr).2).2
    subst e1 e2
    exact ⟨pmem2, hok2, ha2⟩
  · exact absurd (by rw [hr]) (kvs_commit_fail K kvs p pmem pm ops op ha h hv hfit)

/-- A run of successful calls appends the numbered records of its calls. -/
theorem kvs_apply_all_exact (K : Kconfig) (p : fram_partition_t) :
    ∀ (ops ops0 : List kvs_op) (kvs kvs1 : fram_kvs_t) (pm pm1 : fram_pm_t) (pmem : Nat → Nat),
      KvsExact K kvs p pmem ops0 → PmOK pm p pmem →
      fram_kvs_apply_all K kvs pm ops = (ESP_OK, kvs1, pm1) →
      ∃ pmem1, PmOK pm1 p pmem1 ∧ KvsExact K kvs1 p pmem1 (ops0 ++ ops) := by
  intro ops
  induction ops with
  | nil =>
    intro ops0 kvs kvs1 pm pm1 pmem ha h hr
    have e1 : kvs = kvs1 := (Prod.mk.inj (Prod.mk.inj hr).2).1
    have e2 : pm = pm1 := (Prod.mk.inj (Prod.mk.inj hr).2).2
    subst e1 e2
    exact ⟨pmem, h, by rw [List.append_nil]; exact ha⟩
  | cons op rest ih =>
    intro ops0 kvs kvs1 pm pm1 pmem ha h hr
    rw [fram_kvs_apply_all] at hr
    by_cases hc : (fram_kvs_apply K kvs pm op).1 = ESP_OK
    · simp only [hc, ne_eq, not_true_eq_false, if_false] at hr
      obtain ⟨pmem2, hok2, ha2⟩ := kvs_apply_exact K kvs _ p pmem pm _ ops0 op ha h
        (triple_eta_ok _ hc)
      obtain ⟨pmem3, hok3, ha3⟩ := ih (ops0 ++ [op]) _ kvs1 _ pm1 pmem2 ha2 hok2 hr
      refine ⟨pmem3, hok3, ?_⟩
      rw [List.append_assoc] at ha3
      exact ha3
    · simp only [hc, ne_eq, not_false_eq_true, if_true] at hr
      exact absurd (by rw [hr]) hc

/-- The function `fram_kvs_init` on an erased partition: it succeeds with the
empty store, ready, at offset 0 and sequence number 0. -/
theorem kvs_init_exact (K : Kconfig) (pm : fram_pm_t) (p : fram_partition_t)
    (pmem : Nat → Nat) (cfg : fram_kvs_config_t) (hmagic : cfg.magic < U32)
    (h : PmOK pm p pmem) (hfind : fram_pm_find pm cfg.partition_name = some p)
    (herased : ∀ i, i < p.size → pmem i = 0xFF) :
    ∃ kvs1 pm1, fram_kvs_init K pm cfg = (ESP_OK, kvs1, pm1) ∧ PmOK pm1 p pmem ∧
      KvsExact K kvs1 p pmem [] ∧ kvs1.magic = cfg.magic := by
  obtain ⟨pm1, h1, hok1⟩ := kvs_find_end_erased K
    { part := some p, magic := cfg.magic, write_offset := 0, next_seq := 0, ready := false
      mutex := SemaphoreHandle_t.free } p pmem pm rfl h herased
  refine ⟨{ part := some p, magic := cfg.magic, write_offset := 0, next_seq := 0, ready := true
            mutex := SemaphoreHandle_t.free }, pm1, ?_, hok1, ⟨?_, rfl, rfl, trivial⟩, rfl⟩
  · unfold fram_kvs_init
    simp only [hfind, h1]
  · exact ⟨rfl, hmagic, rfl, rfl, Nat.zero_le _, (by decide : (0 : Nat) < U32), trivial,
      fun op ho => absurd ho (List.not_mem_nil _), fun j _ hj => herased j hj⟩

/-! ## Key/value store: `fram_kvs_init` over a log -/

/-- The header read at a committed record of a call is the header of the
call. -/
theorem kvs_rec_header (K : Kconfig) (pmem : Nat → Nat) (off magic seq : Nat) (op : kvs_op)
    (hm : magic < U32) (hs : seq < U32) (hv : op.valid K)
    (hrec : KRec pmem off magic seq op) :
    fram_kvs_header_of_bytes (mem_read pmem off 20) = kvs_header_for magic seq op := by
  have hsize := kvs_op_size_eq op
  unfold KRec at hrec
  rw [hsize] at hrec
  obtain ⟨i1, _, _, _⟩ := kvs_image_parts pmem off _ op.key op.value FRAM_KVS_COMMIT
    (kvs_to_bytes_length _) hrec
  rw [i1]
  exact kvs_header_for_roundtrip K magic seq op (kvs_header_for magic seq op).crc32
    hm hs hv (by rw [kvs_header_for_crc]; exact fram_crc32_le_lt _ _)

/-- The loop of `fram_kvs_find_end` over a numbered log that ends where no
record is accepted: it stops at the end of the log with the number after the
last record. -/
theorem kvs_find_end_run (K : Kconfig) (kvs : fram_kvs_t) (p : fram_partition_t)
    (pmem : Nat → Nat) (hp : kvs.part = some p) (hm : kvs.magic < U32) :
    ∀ (rest : List kvs_op) (off seq fuel : Nat) (pm : fram_pm_t) (key_buf : List Nat),
      PmOK pm p pmem → KLogSeq pmem kvs.magic off seq rest → (∀ op, op ∈ rest → op.valid K) →
      off + kvs_log_size rest ≤ p.size → off + kvs_log_size rest + 65572 ≤ 4294967296 →
      seq + rest.length < U32 →
      kvs_accept K kvs p pmem (off + kvs_log_size rest) = none →
      (off + kvs_log_size rest + 21 ≤ p.size →
        (fram_kvs_header_of_bytes (mem_read pmem (off + kvs_log_size rest) 20)).value_len
          < 65536) →
      rest.length < fuel →
      ∃ pm1, fram_kvs_find_end_loop K kvs p fuel pm off seq key_buf
          = (ESP_OK, off + kvs_log_size rest, seq + rest.length, pm1) ∧ PmOK pm1 p pmem := by
  intro rest
  induction rest with
  | nil =>
    intro off seq fuel pm key_buf h _ _ hfit hb0 _ hacc hvl hfuel
    have hb : off + 65572 ≤ 4294967296 := by
      have e : kvs_log_size ([] : List kvs_op) = 0 := kvs_log_size_nil
      omega
    rw [kvs_log_size_nil, Nat.add_zero] at hfit hacc hvl
    obtain ⟨f, rfl⟩ : ∃ f, fuel = f + 1 := ⟨fuel - 1, by rw [List.length_nil] at hfuel; omega⟩
    obtain ⟨pm1, kb1, hok1, h1⟩ := kvs_find_end_iter K kvs p pmem pm f off seq key_buf hp h
      (by rw [U32_eq]; omega) hvl
    rw [hacc] at h1
    exact ⟨pm1, by rw [h1, kvs_log_size_nil, List.length_nil, Nat.add_zero, Nat.add_zero], hok1⟩
  | cons op rest ih =>
    intro off seq fuel pm key_buf h hlog hvalid hfit hb0 hseq hacc hvl hfuel
    have hb : off + op.size + kvs_log_size rest + 65572 ≤ 4294967296 := by
      have e := kvs_log_size_cons op rest
      omega
    rw [kvs_log_size_cons] at hfit hacc hvl
    rw [← Nat.add_assoc] at hacc hvl
    rw [List.length_cons] at hseq hfuel
    obtain ⟨f, rfl⟩ : ∃ f, fuel = f + 1 := ⟨fuel - 1, by omega⟩
    obtain ⟨hrec, hrest⟩ := hlog
    have hv := hvalid op (List.mem_cons_self _ _)
    have hsize := kvs_op_size_eq op
    have hhdr := kvs_rec_header K pmem off kvs.magic seq op hm (by omega) hv hrec
    obtain ⟨l1, l2, l3, _⟩ := kvs_header_for_lens kvs.magic seq op
    have hv3 : op.value.length ≤ 65535 := hv.2.2.1
    obtain ⟨pm1, kb1, hok1, h1⟩ := kvs_find_end_iter K kvs p pmem pm f off seq key_buf hp h
      (by rw [U32_eq]; omega) (fun _ => by rw [hhdr, l2]; omega)
    rw [kvs_accept_rec K kvs p pmem off seq op hm (by omega) hv (by omega) hrec] at h1
    simp only [l1, l2, l3] at h1
    have hupd : kvs_seq_upd seq seq = seq + 1 := by
      unfold kvs_seq_upd
      rw [if_pos (Nat.le_refl _)]
      exact Nat.mod_eq_of_lt (by omega)
    rw [hupd, ← hsize] at h1
    obtain ⟨pm2, h2, hok2⟩ := ih (off + op.size) (seq + 1) f pm1 kb1 hok1 hrest
      (fun o ho => hvalid o (List.mem_cons_of_mem _ ho)) (by omega) hb (by omega)
      hacc hvl (by omega)
    refine ⟨pm2, ?_, hok2⟩
    rw [h1, h2, kvs_log_size_cons, List.length_cons]
    simp only [Nat.add_assoc, Nat.add_comm 1]

/-- The function `fram_kvs_init` over a numbered log that ends where no record
is accepted: the store it builds. -/
theorem kvs_init_of_log (K : Kconfig) (pm : fram_pm_t) (p : fram_partition_t)
    (pmem : Nat → Nat) (cfg : fram_kvs_config_t) (ops : List kvs_op) (kvs : fram_kvs_t)
    (hmagic : cfg.magic < U32) (h : PmOK pm p pmem)
    (hfind : fram_pm_find pm cfg.partition_name = some p)
    (hb : kvs_log_size ops + 65572 ≤ U32)
    (hlog : KLogSeq pmem cfg.magic 0 0 ops) (hvalid : ∀ op, op ∈ ops → op.valid K)
    (hfit : kvs_log_size ops ≤ p.size) (hkm : kvs.magic = cfg.magic)
    (hacc : kvs_accept K kvs p pmem (kvs_log_size ops) = none)
    (hvl : kvs_log_size ops + 21 ≤ p.size →
      (fram_kvs_header_of_bytes (mem_read pmem (kvs_log_size ops) 20)).value_len < 65536) :
    ∃ pm1, fram_kvs_init K pm cfg =
        (ESP_OK, { part := some p, magic := cfg.magic, write_offset := kvs_log_size ops
                   next_seq := ops.length, ready := true, mutex := SemaphoreHandle_t.free },
          pm1) ∧ PmOK pm1 p pmem := by
  have hlen := kvs_log_size_ge_length ops
  rw [U32_eq] at hb
  obtain ⟨pm1, h1, hok1⟩ := kvs_find_end_run K
    { part := some p, magic := cfg.magic, write_offset := 0, next_seq := 0, ready := false
      mutex := SemaphoreHandle_t.free } p pmem rfl hmagic
    ops 0 0 (p.size + 1) pm [] h hlog hvalid (by omega) (by omega)
    (by rw [U32_eq]; omega)
    (by rw [Nat.zero_add, ← hacc]; exact kvs_accept_magic K _ _ p pmem _ hkm.symm)
    (by rw [Nat.zero_add]; exact hvl) (by omega)
  rw [Nat.zero_add, Nat.zero_add] at h1
  refine ⟨pm1, ?_, hok1⟩
  unfold fram_kvs_init fram_kvs_find_end
  simp only [hfind, h1, ne_eq, not_true_eq_false, if_false]

/-! ## Key/value store: a record whose write was cut short -/

/-- What an accepted record has passed: room for a header, a valid header, a
record inside the partition, the commit byte, and the checksum. -/
theorem kvs_accept_some (K : Kconfig) (kvs : fram_kvs_t) (p : fram_partition_t)
    (pmem : Nat → Nat) (off : Nat) (hdr : fram_kvs_header_t)
    (h : kvs_accept K kvs p pmem off = some hdr) :
    hdr = fram_kvs_header_of_bytes (mem_read pmem off 20) ∧ off + 21 ≤ p.size ∧
    fram_kvs_header_valid K kvs hdr = true ∧
    off + (20 + hdr.key_len + hdr.value_len + 1) ≤ p.size ∧
    pmem (off + 20 + hdr.key_len + hdr.value_len) = FRAM_KVS_COMMIT ∧
    fram_crc32_le (fram_crc32_le (fram_crc32_le 0 hdr.head_bytes)
      (mem_read pmem (off + 20) hdr.key_len)) (mem_read pmem (off + 20 + hdr.key_len)
        hdr.value_len) = hdr.crc32 := by
  have h20 : KVS_HEADER_SIZE = 20 := rfl
  unfold kvs_accept at h
  rw [h20] at h
  by_cases c1 : off + 20 + 1 ≤ p.size
  swap
  · rw [if_neg c1] at h
    exact absurd h (by simp)
  rw [if_pos c1] at h
  simp only at h
  split_ifs at h with c2 c3 c4 c5
  have e := Option.some.inj h
  subst e
  refine ⟨rfl, c1, ?_, by omega, by simpa using c4, by simpa using c5⟩
  simpa using c2

/-- The lengths in the header read at an offset, from the four bytes that
hold them. -/
theorem kvs_read_lens (m : Nat → Nat) (w : Nat) :
    (fram_kvs_header_of_bytes (mem_read m w 20)).key_len = m (w + 8) + 256 * m (w + 9) ∧
    (fram_kvs_header_of_bytes (mem_read m w 20)).value_len
      = m (w + 10) + 256 * m (w + 11) := by
  constructor <;>
  simp [fram_kvs_header_of_bytes, mem_read, slice, le_val, List.range, List.range.loop]

/-- The four bytes of the stored header that hold the lengths. -/
theorem kvs_to_bytes_lens (hdr : fram_kvs_header_t) :
    hdr.to_bytes.getD 8 0 = hdr.key_len % 256 ∧
    hdr.to_bytes.getD 9 0 = hdr.key_len / 256 % 256 ∧
    hdr.to_bytes.getD 10 0 = hdr.value_len % 256 ∧
    hdr.to_bytes.getD 11 0 = hdr.value_len / 256 % 256 := ⟨rfl, rfl, rfl, rfl⟩

/-- No record is accepted at an offset that holds a whole header whose commit
byte is zero. -/
theorem kvs_accept_cleared (K : Kconfig) (kvs : fram_kvs_t) (p : fram_partition_t)
    (m : Nat → Nat) (w : Nat) (hdr : fram_kvs_header_t)
    (hread : mem_read m w 20 = hdr.to_bytes)
    (hrt : fram_kvs_header_of_bytes hdr.to_bytes = hdr)
    (hc : m (w + 20 + hdr.key_len + hdr.value_len) = 0) :
    kvs_accept K kvs p m w = none := by
  cases hacc : kvs_accept K kvs p m w with
  | none => rfl
  | some h =>
    obtain ⟨e, _, _, _, e5, _⟩ := kvs_accept_some K kvs p m w h hacc
    rw [hread, hrt] at e
    subst e
    rw [hc] at e5
    exact absurd e5 (by decide)

/-- No record is accepted at an offset behind which the partition is erased
apart from the first `n < 20` bytes of a header and the zeroed commit byte of
its record. -/
theorem kvs_accept_torn (K : Kconfig) (kvs : fram_kvs_t) (p : fram_partition_t)
    (m : Nat → Nat) (w n : Nat) (hdr : fram_kvs_header_t)
    (hn : n < 20) (hkl : hdr.key_len < 65536)
    (hlo : ∀ i, i < n → m (w + i) = hdr.to_bytes.getD i 0)
    (hhi : ∀ i, n ≤ i → i < 20 → m (w + i) = 0xFF)
    (hc : m (w + 20 + hdr.key_len + hdr.value_len) = 0)
    (he : ∀ a, w + 20 ≤ a → a < p.size → a ≠ w + 20 + hdr.key_len + hdr.value_len →
      m a = 0xFF) :
    kvs_accept K kvs p m w = none ∧
    (fram_kvs_header_of_bytes (mem_read m w 20)).value_len < 65536 := by
  obtain ⟨r1, r2⟩ := kvs_read_lens m w
  obtain ⟨b8, b9, b10, b11⟩ := kvs_to_bytes_lens hdr
  have v10 : m (w + 10) < 256 := by
    by_cases c : 10 < n
    · rw [hlo 10 c, b10]; omega
    · rw [hhi 10 (by omega) (by omega)]; omega
  have v11 : m (w + 11) < 256 := by
    by_cases c : 11 < n
    · rw [hlo 11 c, b11]; omega
    · rw [hhi 11 (by omega) (by omega)]; omega
  refine ⟨?_, by rw [r2]; omega⟩
  cases hacc : kvs_accept K kvs p m w with
  | none => rfl
  | some h =>
    exfalso
    obtain ⟨e, _, e3, e4, e5, _⟩ := kvs_accept_some K kvs p m w h hacc
    obtain ⟨_, _, k2, _⟩ := kvs_valid_key_len K kvs h e3
    rw [e] at k2 e4 e5
    rw [r1] at k2 e4 e5
    rw [r2] at e4 e5
    have hn10 : 10 ≤ n := by
      by_contra c
      rw [hhi 9 (by omega) (by omega)] at k2
      omega
    have hkey : m (w + 8) + 256 * m (w + 9) = hdr.key_len := by
      rw [hlo 8 (by omega), hlo 9 (by omega), b8, b9]
      omega
    rw [hkey] at e4 e5
    by_cases hpos : w + 20 + hdr.key_len + (m (w + 10) + 256 * m (w + 11))
        = w + 20 + hdr.key_len + hdr.value_len
    · rw [hpos, hc] at e5
      exact absurd e5 (by decide)
    · rw [he _ (by omega) (by omega) hpos] at e5
      exact absurd e5 (by decide)

/-- A partition of a device that may fail is smaller than `2^32` bytes. -/
theorem pm_any_size_lt (pm : fram_pm_t) (p : fram_partition_t) (pmem : Nat → Nat)
    (h : PmAny pm p pmem) : p.size < U32 := by
  obtain ⟨_, _, mem, size, hd, hfit, _⟩ := h
  have := hd.size_lt
  omega

/-- The header and the zeroed commit byte of a record stay when bytes between
them are written. -/
theorem kvs_cleared_write (pmem m : Nat → Nat) (w c off n : Nat) (hb data : List Nat)
    (h : mem_read m w 20 = hb ∧ m c = 0 ∧ ∀ a, a < w → m a = pmem a)
    (h1 : w + 20 ≤ off) (h2 : off + data.length ≤ c) :
    mem_read (mem_write m off (data.take n)) w 20 = hb ∧
    mem_write m off (data.take n) c = 0 ∧
    ∀ a, a < w → mem_write m off (data.take n) a = pmem a := by
  have hl : (data.take n).length ≤ data.length := by
    rw [List.length_take]
    omega
  refine ⟨?_, ?_, ?_⟩
  · rw [mem_read_write_disjoint _ _ _ _ _ (Or.inl h1)]
    exact h.1
  · rw [mem_write_outside _ _ _ _ (Or.inr (by omega))]
    exact h.2.1
  · intro a ha
    rw [mem_write_outside _ _ _ _ (Or.inl (by omega))]
    exact h.2.2 a ha

/-- The media after the commit byte of a record has been zeroed and the first
`n` bytes of its header written over an erased area. -/
theorem kvs_torn_media (pmem : Nat → Nat) (w c n psize : Nat) (hb : List Nat)
    (hlen : hb.length = 20) (hn : n ≤ 20) (hc : w + 20 ≤ c)
    (herased : ∀ j, w ≤ j → j < psize → pmem j = 0xFF) (hcs : c < psize) :
    (∀ i, i < n → mem_write (mem_write pmem c [0]) w (hb.take n) (w + i) = hb.getD i 0) ∧
    (∀ i, n ≤ i → i < 20 → mem_write (mem_write pmem c [0]) w (hb.take n) (w + i) = 0xFF) ∧
    mem_write (mem_write pmem c [0]) w (hb.take n) c = 0 ∧
    (∀ a, w + 20 ≤ a → a < psize → a ≠ c →
      mem_write (mem_write pmem c [0]) w (hb.take n) a = 0xFF) ∧
    (∀ a, a < w → mem_write (mem_write pmem c [0]) w (hb.take n) a = pmem a) := by
  have hl : (hb.take n).length = n := by
    rw [List.length_take, hlen]
    omega
  refine ⟨?_, ?_, ?_, ?_, ?_⟩
  · intro i hi
    rw [mem_write_inside _ _ _ _ (by rw [hl]; exact hi)]
    simp only [List.getD_eq_getElem?_getD, List.getElem?_take, if_pos hi]
  · intro i h1 h2
    rw [mem_write_outside _ _ _ _ (Or.inr (by rw [hl]; omega)),
      mem_write_outside _ _ _ _ (Or.inl (by omega))]
    exact herased _ (by omega) (by omega)
  · rw [mem_write_outside _ _ _ _ (Or.inr (by rw [hl]; omega))]
    exact mem_write_inside pmem c [0] 0 (by decide)
  · intro a h1 h2 h3
    rw [mem_write_outside _ _ _ _ (Or.inr (by rw [hl]; omega)),
      mem_write_outside _ _ _ _ (by simp only [List.length_singleton]; omega)]
    exact herased _ (by omega) h2
  · intro a ha
    rw [mem_write_outside _ _ _ _ (Or.inl ha), mem_write_outside _ _ _ _ (Or.inl (by omega))]

set_option maxRecDepth 4000 in
/-- The record writes of `fram_kvs_set` and `fram_kvs_delete` on a device that
may fail, behind a `write_offset` from which the partition is erased: when
they do not return `ESP_OK`, the bytes below `write_offset` are unchanged and
no record is accepted at `write_offset`. -/
theorem kvs_write_record_any (K : Kconfig) (kvs : fram_kvs_t) (p : fram_partition_t)
    (pmem : Nat → Nat) (pm : fram_pm_t) (hdr : fram_kvs_header_t) (key value : List Nat)
    (hp : kvs.part = some p) (h : PmAny pm p pmem)
    (hkl : hdr.key_len = key.length) (hvl : hdr.value_len = value.length)
    (hk1 : 1 ≤ key.length) (hk2 : key.length ≤ 15) (hv2 : value.length ≤ 65535)
    (hrt : fram_kvs_header_of_bytes hdr.to_bytes = hdr)
    (hfit : kvs.write_offset + 20 + key.length + value.length + 1 ≤ p.size)
    (herased : ∀ j, kvs.write_offset ≤ j → j < p.size → pmem j = 0xFF)
    (hfail : (fram_kvs_write_record kvs pm hdr key value).1 ≠ ESP_OK) :
    ∃ pmem1, PmAny (fram_kvs_write_record kvs pm hdr key value).2 p pmem1 ∧
      (∀ a, a < kvs.write_offset → pmem1 a = pmem a) ∧
      kvs_accept K kvs p pmem1 kvs.write_offset = none ∧
      (fram_kvs_header_of_bytes (mem_read pmem1 kvs.write_offset 20)).value_len < 65536 := by
  have hsz := pm_any_size_lt pm p pmem h
  rw [U32_eq] at hsz
  have hlen := kvs_to_bytes_length hdr
  have hco : fram_kvs_commit_offset kvs.write_offset hdr.key_len hdr.value_len
      = kvs.write_offset + 20 + key.length + value.length := by
    unfold fram_kvs_commit_offset
    rw [hkl, hvl]
    exact Nat.mod_eq_of_lt (by rw [U32_eq]; show _ + 20 + _ + _ < 4294967296; omega)
  have ho : (kvs.write_offset + KVS_HEADER_SIZE) % U32 = kvs.write_offset + 20 :=
    Nat.mod_eq_of_lt (by rw [U32_eq]; show _ + 20 < 4294967296; omega)
  have hpo : (kvs.write_offset + KVS_HEADER_SIZE + key.length) % U32
      = kvs.write_offset + 20 + key.length :=
    Nat.mod_eq_of_lt (by rw [U32_eq]; show _ + 20 + _ < 4294967296; omega)
  -- the commit byte is zeroed
  obtain ⟨n0, _, hA0, hok0, hbad0⟩ := fram_pm_write_any pm p pmem
    (kvs.write_offset + 20 + key.length + value.length) [0] h (by decide)
    (by simp only [List.length_singleton]; omega)
  obtain ⟨r0, hr0⟩ : ∃ r, fram_pm_write pm (some p)
    (kvs.write_offset + 20 + key.length + value.length) [0] = r := ⟨_, rfl⟩
  rw [hr0] at hA0 hok0 hbad0
  by_cases e0 : r0.1 = ESP_OK
  swap
  · have he : fram_kvs_write_record kvs pm hdr key value = r0 := by
      unfold fram_kvs_write_record fram_kvs_write_commit
      simp only [hp, hco, hr0, e0, ne_eq, not_false_eq_true, if_true]
    rw [he]
    rw [take_of_lt_one _ _ (hbad0 e0), mem_write_nil] at hA0
    exact ⟨pmem, hA0, fun _ _ => rfl, kvs_accept_erased K kvs p pmem _ herased,
      kvs_erased_value_len pmem _ (fun i hi => herased _ (by omega) (by omega))⟩
  rw [take_of_eq_length _ _ (hok0 e0)] at hA0
  -- the header
  obtain ⟨n1, hn1, hA1, hok1, hbad1⟩ := fram_pm_write_any r0.2 p _ kvs.write_offset
    hdr.to_bytes hA0 (by rw [hlen]; decide) (by rw [hlen]; omega)
  obtain ⟨r1, hr1⟩ : ∃ r, fram_pm_write r0.2 (some p) kvs.write_offset hdr.to_bytes = r :=
    ⟨_, rfl⟩
  rw [hr1] at hA1 hok1 hbad1
  rw [hlen] at hn1
  obtain ⟨t1, t2, t3, t4, t5⟩ := kvs_torn_media pmem kvs.write_offset
    (kvs.write_offset + 20 + key.length + value.length) n1 p.size hdr.to_bytes hlen hn1
    (by omega) herased (by omega)
  by_cases e1 : r1.1 = ESP_OK
  swap
  · have he : fram_kvs_write_record kvs pm hdr key value = r1 := by
      unfold fram_kvs_write_record fram_kvs_write_commit
      simp only [hp, hco, hr0, e0, hr1, e1, ne_eq, not_true_eq_false, not_false_eq_true,
        false_and, if_false, if_true]
    rw [he]
    have hlt := hbad1 e1
    rw [hlen] at hlt
    obtain ⟨a1, a2⟩ := kvs_accept_torn K kvs p _ kvs.write_offset n1 hdr hlt
      (by rw [hkl]; omega) t1 t2 (by rw [hkl, hvl]; exact t3)
      (by rw [hkl, hvl]; exact t4)
    exact ⟨_, hA1, t5, a1, a2⟩
  have hn1e := hok1 e1
  rw [hlen] at hn1e
  have hP1 : mem_read (mem_write (mem_write pmem
        (kvs.write_offset + 20 + key.length + value.length) [0]) kvs.write_offset
        (hdr.to_bytes.take n1)) kvs.write_offset 20 = hdr.to_bytes ∧
      mem_write (mem_write pmem (kvs.write_offset + 20 + key.length + value.length) [0])
        kvs.write_offset (hdr.to_bytes.take n1)
        (kvs.write_offset + 20 + key.length + value.length) = 0 ∧
      ∀ a, a < kvs.write_offset →
        mem_write (mem_write pmem (kvs.write_offset + 20 + key.length + value.length) [0])
          kvs.write_offset (hdr.to_bytes.take n1) a = pmem a := by
    refine ⟨?_, t3, t5⟩
    rw [take_of_eq_length _ _ (by rw [hlen]; exact hn1e)]
    have := mem_read_write_same (mem_write pmem
      (kvs.write_offset + 20 + key.length + value.length) [0]) kvs.write_offset hdr.to_bytes
    rw [hlen] at this
    exact this
  -- the key
  obtain ⟨n2, _, hA2, hok2, hbad2⟩ := fram_pm_write_any r1.2 p _ (kvs.write_offset + 20)
    key hA1 (by omega) (by omega)
  obtain ⟨r2, hr2⟩ : ∃ r, fram_pm_write r1.2 (some p) (kvs.write_offset + 20) key = r :=
    ⟨_, rfl⟩
  rw [hr2] at hA2 hok2 hbad2
  have hP2 := kvs_cleared_write pmem _ kvs.write_offset
    (kvs.write_offset + 20 + key.length + value.length) (kvs.write_offset + 20) n2
    hdr.to_bytes key hP1 (Nat.le_refl _) (by omega)
  by_cases e2 : r2.1 = ESP_OK
  swap
  · have he : fram_kvs_write_record kvs pm hdr key value = r2 := by
      unfold fram_kvs_write_record fram_kvs_write_commit
      simp only [hp, hco, ho, hr0, e0, hr1, e1, hr2, e2, ne_eq, not_true_eq_false,
        not_false_eq_true, false_and, if_false, if_true]
    rw [he]
    exact ⟨_, hA2, hP2.2.2, kvs_accept_cleared K kvs p _ _ hdr hP2.1 hrt
      (by rw [hkl, hvl]; exact hP2.2.1), by rw [hP2.1, hrt, hvl]; omega⟩
  by_cases hv0 : value.length > 0
  · -- the value
    obtain ⟨n3, _, hA3, hok3, hbad3⟩ := fram_pm_write_any r2.2 p _
      (kvs.write_offset + 20 + key.length) value hA2 hv0 (by omega)
    obtain ⟨r3, hr3⟩ : ∃ r, fram_pm_write r2.2 (some p) (kvs.write_offset + 20 + key.length)
      value = r := ⟨_, rfl⟩
    rw [hr3] at hA3 hok3 hbad3
    have hP3 := kvs_cleared_write pmem _ kvs.write_offset
      (kvs.write_offset + 20 + key.length + value.length) (kvs.write_offset + 20 + key.length)
      n3 hdr.to_bytes value hP2 (by omega) (Nat.le_refl _)
    by_cases e3 : r3.1 = ESP_OK
    swap
    · have he : fram_kvs_write_record kvs pm hdr key value = r3 := by
        unfold fram_kvs_write_record fram_kvs_write_commit
        simp only [hp, hco, ho, hpo, hr0, e0, hr1, e1, hr2, e2, hv0, hr3, e3, ne_eq,
          not_true_eq_false, not_false_eq_true, and_self, if_false, if_true]
      rw [he]
      exact ⟨_, hA3, hP3.2.2, kvs_accept_cleared K kvs p _ _ hdr hP3.1 hrt
        (by rw [hkl, hvl]; exact hP3.2.1), by rw [hP3.1, hrt, hvl]; omega⟩
    -- the commit byte
    obtain ⟨n4, _, hA4, hok4, hbad4⟩ := fram_pm_write_any r3.2 p _
      (kvs.write_offset + 20 + key.length + value.length) [FRAM_KVS_COMMIT] hA3 (by decide)
      (by simp only [List.length_singleton]; omega)
    have he : fram_kvs_write_record kvs pm hdr key value = fram_pm_write r3.2 (some p)
        (kvs.write_offset + 20 + key.length + value.length) [FRAM_KVS_COMMIT] := by
      unfold fram_kvs_write_record fram_kvs_write_commit
      simp only [hp, hco, ho, hpo, hr0, e0, hr1, e1, hr2, e2, hv0, hr3, e3, ne_eq,
        not_true_eq_false, not_false_eq_true, and_self, if_false, if_true]
    rw [he] at hfail ⊢
    rw [take_of_lt_one _ _ (hbad4 hfail), mem_write_nil] at hA4
    exact ⟨_, hA4, hP3.2.2, kvs_accept_cleared K kvs p _ _ hdr hP3.1 hrt
      (by rw [hkl, hvl]; exact hP3.2.1), by rw [hP3.1, hrt, hvl]; omega⟩
  · -- no value: the commit byte
    obtain ⟨n4, _, hA4, hok4, hbad4⟩ := fram_pm_write_any r2.2 p _
      (kvs.write_offset + 20 + key.length + value.length) [FRAM_KVS_COMMIT] hA2 (by decide)
      (by simp only [List.length_singleton]; omega)
    have he : fram_kvs_write_record kvs pm hdr key value = fram_pm_write r2.2 (some p)
        (kvs.write_offset + 20 + key.length + value.length) [FRAM_KVS_COMMIT] := by
      unfold fram_kvs_write_record fram_kvs_write_commit
      simp only [hp, hco, ho, hr0, e0, hr1, e1, hr2, e2, hv0, ne_eq,
        not_true_eq_false, not_false_eq_true, and_false, if_false, if_true]
    rw [he] at hfail ⊢
    rw [take_of_lt_one _ _ (hbad4 hfail), mem_write_nil] at hA4
    exact ⟨_, hA4, hP2.2.2, kvs_accept_cleared K kvs p _ _ hdr hP2.1 hrt
      (by rw [hkl, hvl]; exact hP2.2.1), by rw [hP2.1, hrt, hvl]; omega⟩

/-! ## Key/value store: all the results of `fram_kvs_get` -/

/-- The function `fram_kvs_get` after a scan whose state sees `r` for the key:
return value, buffer and `*len` are those of the specification. -/
theorem kvs_get_full (K : Kconfig) (kvs : fram_kvs_t) (p : fram_partition_t)
    (pmem : Nat → Nat) (pm pm1 : fram_pm_t) (key buf : List Nat) (cap : Nat)
    (st1 : kvs_scan_t) (r : Option (List Nat))
    (hp : kvs.part = some p) (hmx : kvs.mutex = SemaphoreHandle_t.free)
    (hk1 : 1 ≤ key.length) (hk2 : key.length ≤ FRAM_KVS_KEY_MAX)
    (hloop : fram_kvs_scan_loop K kvs p key (p.size + 1) pm 0
      { found := false, deleted := false, last_hdr := kvs_header_zero, last_offset := 0 } []
        = (ESP_OK, st1, pm1))
    (hok1 : PmOK pm1 p pmem) (hsees : ScanSees p pmem key st1 r) :
    ∃ pm3, fram_kvs_get K kvs pm key buf cap =
      ((kvs_get_spec r buf cap).1, (kvs_get_spec r buf cap).2.1, (kvs_get_spec r buf cap).2.2,
        pm3) := by
  have hscan := kvs_scan_of_loop K kvs p pm pm1 key st1 hp hloop
  have hlock := kvs_lock_free kvs hmx
  have hguard : ¬ (key.length = 0 ∨ key.length > FRAM_KVS_KEY_MAX) := by omega
  have hsz := pm_size_lt pm1 p pmem hok1
  cases r with
  | none =>
    refine ⟨pm1, ?_⟩
    unfold fram_kvs_get kvs_get_spec
    rw [if_neg hguard, if_neg (by rw [hlock]; simp), hscan]
    by_cases hf : st1.found = true
    · have hd : st1.deleted = true := by
        rcases hsees with h1 | h1
        · rw [h1] at hf; cases hf
        · exact h1
      simp only [hf, if_true, hd]
    · simp only [hf, Bool.false_eq_true, if_false]
  | some v =>
    obtain ⟨s1, s2, s3, s4, s5, s6⟩ := hsees
    unfold fram_kvs_get kvs_get_spec
    rw [if_neg hguard, if_neg (by rw [hlock]; simp), hscan]
    simp only [s1, if_true, s2, Bool.false_eq_true, if_false, s3, s4]
    by_cases hcap : cap < v.length
    · exact ⟨pm1, by simp only [hcap, if_true]⟩
    · simp only [hcap, if_false]
      by_cases hv0 : v.length > 0
      · have hmod : (st1.last_offset + KVS_HEADER_SIZE + key.length) % U32
            = st1.last_offset + KVS_HEADER_SIZE + key.length :=
          Nat.mod_eq_of_lt (by omega)
        obtain ⟨pm3, h3, hok3⟩ := fram_pm_read_ok pm1 p pmem
          (st1.last_offset + KVS_HEADER_SIZE + key.length) v.length hok1 hv0 (by omega)
        refine ⟨pm3, ?_⟩
        rw [if_pos hv0, hmod, hp, h3, s5]
        simp only [if_true]
      · have hnil : v = [] := List.eq_nil_of_length_eq_zero (by omega)
        subst hnil
        refine ⟨pm1, ?_⟩
        rw [if_neg hv0]
        simp

/-- The function `fram_kvs_get` on a store whose partition holds the log of
the calls `ops`: its results are those of the specification for the value
bound to the key. -/
theorem kvs_get_of_log (K : Kconfig) (kvs : fram_kvs_t) (p : fram_partition_t)
    (pmem : Nat → Nat) (pm : fram_pm_t) (ops : List kvs_op) (k buf : List Nat) (cap : Nat)
    (hp : kvs.part = some p) (hm : kvs.magic < U32) (hmx : kvs.mutex = SemaphoreHandle_t.free)
    (h : PmOK pm p pmem) (hlog : KLog pmem kvs.magic 0 ops)
    (hvalid : ∀ op, op ∈ ops → op.valid K) (hfit : kvs_log_size ops ≤ p.size)
    (hstop : KStop K kvs p pmem (kvs_log_size ops))
    (hk1 : 1 ≤ k.length) (hk2 : k.length ≤ FRAM_KVS_KEY_MAX) :
    ∃ pm3, fram_kvs_get K kvs pm k buf cap =
      ((kvs_get_spec (kvs_map_spec ops k) buf cap).1,
        (kvs_get_spec (kvs_map_spec ops k) buf cap).2.1,
        (kvs_get_spec (kvs_map_spec ops k) buf cap).2.2, pm3) := by
  have hlen := kvs_log_size_ge_length ops
  obtain ⟨st1, pm1, hloop, hok1, hsees⟩ := kvs_scan_run K kvs p pmem k hp hm ops 0
    (p.size + 1) pm
    { found := false, deleted := false, last_hdr := kvs_header_zero, last_offset := 0 } [] none
    h hlog hvalid (by omega) (by rw [Nat.zero_add]; exact hstop) (by omega) (Or.inl rfl)
  exact kvs_get_full K kvs p pmem pm pm1 k buf cap st1 _ hp hmx hk1 hk2 hloop hok1 hsees

/-- The function `fram_kvs_get` with a key it rejects: nothing is read. -/
theorem kvs_get_bad_key (K : Kconfig) (kvs : fram_kvs_t) (pm : fram_pm_t) (k buf : List Nat)
    (cap : Nat) (hk : ¬ (1 ≤ k.length ∧ k.length ≤ FRAM_KVS_KEY_MAX)) :
    fram_kvs_get K kvs pm k buf cap = (ESP_ERR_INVALID_ARG, buf, cap, pm) := by
  unfold fram_kvs_get
  rw [if_pos (by omega)]

/-- A call with arguments that `fram_kvs_set` or `fram_kvs_delete` rejects
leaves the store and the partition manager as they are. -/
theorem kvs_apply_invalid_eq (K : Kconfig) (kvs : fram_kvs_t) (pm : fram_pm_t) (op : kvs_op)
    (hv : ¬ op.valid K) : (fram_kvs_apply K kvs pm op).2 = (kvs, pm) := by
  cases op with
  | set k v =>
    have hv2 : ¬ (1 ≤ k.length ∧ k.length ≤ FRAM_KVS_KEY_MAX ∧ v.length ≤ UINT16_MAX ∧
        v.length ≤ K.FRAM_KVS_MAX_VALUE) := hv
    show (fram_kvs_set K kvs pm k v).2 = (kvs, pm)
    unfold fram_kvs_set
    by_cases g1 : k.length = 0 ∨ k.length > FRAM_KVS_KEY_MAX
    · rw [if_pos g1]
    · rw [if_neg g1]
      by_cases g2 : v.length > UINT16_MAX
      · rw [if_pos g2]
      · rw [if_neg g2]
        by_cases g3 : v.length > K.FRAM_KVS_MAX_VALUE
        · rw [if_pos g3]
        · exfalso
          apply hv2
          omega
  | del k =>
    have hv2 : ¬ (1 ≤ k.length ∧ k.length ≤ FRAM_KVS_KEY_MAX ∧ 0 ≤ UINT16_MAX ∧
        0 ≤ K.FRAM_KVS_MAX_VALUE) := hv
    show (fram_kvs_delete kvs pm k).2 = (kvs, pm)
    unfold fram_kvs_delete
    by_cases g1 : k.length = 0 ∨ k.length > FRAM_KVS_KEY_MAX
    · rw [if_pos g1]
    · exfalso
      apply hv2
      omega

/-! ## Key/value store: a call that fails -/

/-- A `fram_kvs_set` or `fram_kvs_delete` on a device that may fail, on a
store built by successful calls on an erased partition of at most
`2^32 - 65572` bytes: when the call does not return `ESP_OK` the store object
is unchanged, the bytes below `write_offset` are unchanged, and no record is
accepted at `write_offset`. -/
theorem kvs_apply_any (K : Kconfig) (kvs : fram_kvs_t) (p : fram_partition_t)
    (pmem : Nat → Nat) (pm : fram_pm_t) (ops : List kvs_op) (op : kvs_op)
    (ha : KvsAfter K kvs p pmem ops) (h : PmAny pm p pmem) (hb : p.size + 65572 ≤ U32)
    (hfail : (fram_kvs_apply K kvs pm op).1 ≠ ESP_OK) :
    (fram_kvs_apply K kvs pm op).2.1 = kvs ∧
    ∃ pmem1, PmAny (fram_kvs_apply K kvs pm op).2.2 p pmem1 ∧
      (∀ a, a < kvs.write_offset → pmem1 a = pmem a) ∧
      kvs_accept K kvs p pmem1 kvs.write_offset = none ∧
      (kvs.write_offset + 21 ≤ p.size →
        (fram_kvs_header_of_bytes (mem_read pmem1 kvs.write_offset 20)).value_len < 65536) := by
  have hoff := ha.offset
  have hfits := ha.fits
  rw [U32_eq] at hb
  have herased : ∀ j, kvs.write_offset ≤ j → j < p.size → pmem j = 0xFF := by
    intro j h1 h2
    exact ha.erased j (by rw [← hoff]; exact h1) h2
  have hsame : PmAny pm p pmem ∧ (∀ a, a < kvs.write_offset → pmem a = pmem a) ∧
      kvs_accept K kvs p pmem kvs.write_offset = none ∧
      (kvs.write_offset + 21 ≤ p.size →
        (fram_kvs_header_of_bytes (mem_read pmem kvs.write_offset 20)).value_len < 65536) :=
    ⟨h, fun _ _ => rfl, kvs_accept_erased K kvs p pmem _ herased,
      fun c => kvs_erased_value_len pmem _ (fun i hi => herased _ (by omega) (by omega))⟩
  by_cases hv : op.valid K
  swap
  · have he := kvs_apply_invalid_eq K kvs pm op hv
    have e1 : (fram_kvs_apply K kvs pm op).2.1 = kvs := by rw [he]
    have e2 : (fram_kvs_apply K kvs pm op).2.2 = pm := by rw [he]
    rw [e1, e2]
    exact ⟨rfl, pmem, hsame⟩
  rw [kvs_apply_eq K kvs pm p op ha.part ha.mutex hv] at hfail ⊢
  have hsize := kvs_op_size_eq op
  have hk2 : op.key.length ≤ 15 := hv.2.1
  have hv2 : op.value.length ≤ 65535 := hv.2.2.1
  unfold kvs_commit_record at hfail ⊢
  by_cases hc : (kvs.write_offset + op.size % U32) % U32 > p.size
  · rw [if_pos hc]
    exact ⟨rfl, pmem, hsame⟩
  rw [if_neg hc] at hfail ⊢
  have hmod : (kvs.write_offset + op.size % U32) % U32 = kvs.write_offset + op.size := by
    rw [U32_eq, Nat.mod_eq_of_lt (show op.size < 4294967296 by omega),
      Nat.mod_eq_of_lt (by omega)]
  rw [hmod] at hc
  by_cases hw : (fram_kvs_write_record kvs pm (kvs_header_for kvs.magic kvs.next_seq op)
      op.key op.value).1 = ESP_OK
  · simp only [hw, if_true, ne_eq, not_true_eq_false] at hfail
  simp only [hw, if_false, true_and]
  obtain ⟨pmem1, a1, a2, a3, a4⟩ := kvs_write_record_any K kvs p pmem pm
    (kvs_header_for kvs.magic kvs.next_seq op) op.key op.value ha.part h rfl rfl hv.1 hk2 hv2
    (kvs_header_for_roundtrip K kvs.magic kvs.next_seq op
      (kvs_header_for kvs.magic kvs.next_seq op).crc32 ha.magic_lt ha.seq_lt hv
      (by rw [kvs_header_for_crc]; exact fram_crc32_le_lt _ _))
    (by omega) herased hw
  exact ⟨pmem1, a1, a2, a3, fun _ => a4⟩

/-- A `fram_kvs_set` or `fram_kvs_delete` with acceptable arguments whose
record fits the partition, on a mock armed to fail at one of the writes of the
call (commit clear, header, key, value when there is one, commit byte):
the call returns `ESP_FAIL`. -/
theorem kvs_apply_armed_fails (K : Kconfig) (kvs : fram_kvs_t) (p : fram_partition_t)
    (pmem : Nat → Nat) (pm : fram_pm_t) (ops : List kvs_op) (op : kvs_op) (c f : Nat)
    (ha : KvsAfter K kvs p pmem ops) (h : PmArmed pm p pmem c f) (hv : op.valid K)
    (hfit : kvs.write_offset + op.size ≤ p.size)
    (hcU : c + 5 < U32) (hf : f ≤ c + (if op.value.length > 0 then 5 else 4)) :
    (fram_kvs_apply K kvs pm op).1 = ESP_FAIL := by
  have hsz := pm_any_size_lt pm p pmem h.armed_any
  rw [U32_eq] at hsz
  have hsize := kvs_op_size_eq op
  have hp := ha.part
  have hk1 : 1 ≤ op.key.length := hv.1
  have hmod : (kvs.write_offset + op.size % U32) % U32 = kvs.write_offset + op.size := by
    rw [U32_eq, Nat.mod_eq_of_lt (show op.size < 4294967296 by omega),
      Nat.mod_eq_of_lt (by omega)]
  have hlen := kvs_to_bytes_length (kvs_header_for kvs.magic kvs.next_seq op)
  obtain ⟨l1, l2, _, _⟩ := kvs_header_for_lens kvs.magic kvs.next_seq op
  have hco : fram_kvs_commit_offset kvs.write_offset op.key.length op.value.length
      = kvs.write_offset + 20 + op.key.length + op.value.length := by
    unfold fram_kvs_commit_offset
    exact Nat.mod_eq_of_lt (by rw [U32_eq]; show _ + 20 + _ + _ < 4294967296; omega)
  have ho : (kvs.write_offset + KVS_HEADER_SIZE) % U32 = kvs.write_offset + 20 :=
    Nat.mod_eq_of_lt (by rw [U32_eq]; show _ + 20 < 4294967296; omega)
  have hpo : (kvs.write_offset + KVS_HEADER_SIZE + op.key.length) % U32
      = kvs.write_offset + 20 + op.key.length :=
    Nat.mod_eq_of_lt (by rw [U32_eq]; show _ + 20 + _ < 4294967296; omega)
  rw [kvs_apply_eq K kvs pm p op ha.part ha.mutex hv]
  unfold kvs_commit_record
  rw [if_neg (by rw [hmod]; omega)]
  have hw : (fram_kvs_write_record kvs pm (kvs_header_for kvs.magic kvs.next_seq op)
      op.key op.value).1 = ESP_FAIL := by
    rcases pm_armed_write pm p pmem c f
      (kvs.write_offset + 20 + op.key.length + op.value.length) [0] h
      (by omega) (by decide) (by simp only [List.length_singleton]; omega) with
      ⟨hc1, pm1, h1, hok1⟩ | ⟨_, pm1, h1, _⟩
    swap
    · unfold fram_kvs_write_record fram_kvs_write_commit
      simp only [hp, l1, l2, hco, h1, ne_eq, reduceCtorEq, not_false_eq_true, if_true]
    rcases pm_armed_write pm1 p _ (c + 1) f kvs.write_offset
      (kvs_header_for kvs.magic kvs.next_seq op).to_bytes hok1
      (by omega) (by rw [hlen]; decide) (by rw [hlen]; omega) with
      ⟨hc2, pm2, h2, hok2⟩ | ⟨_, pm2, h2, _⟩
    swap
    · unfold fram_kvs_write_record fram_kvs_write_commit
      simp only [hp, l1, l2, hco, h1, h2, ne_eq, not_true_eq_false, reduceCtorEq,
        not_false_eq_true, false_and, if_false, if_true]
    rcases pm_armed_write pm2 p _ (c + 1 + 1) f (kvs.write_offset + 20) op.key hok2
      (by omega) (by omega) (by omega) with
      ⟨hc3, pm3, h3, hok3⟩ | ⟨_, pm3, h3, _⟩
    swap
    · unfold fram_kvs_write_record fram_kvs_write_commit
      simp only [hp, l1, l2, hco, ho, h1, h2, h3, ne_eq, not_true_eq_false, reduceCtorEq,
        not_false_eq_true, false_and, if_false, if_true]
    by_cases hv0 : op.value.length > 0
    · rw [if_pos hv0] at hf
      rcases pm_armed_write pm3 p _ (c + 1 + 1 + 1) f
        (kvs.write_offset + 20 + op.key.length) op.value hok3
        (by omega) hv0 (by omega) with
        ⟨hc4, pm4, h4, hok4⟩ | ⟨_, pm4, h4, _⟩
      swap
      · unfold fram_kvs_write_record fram_kvs_write_commit
        simp only [hp, l1, l2, hco, ho, hpo, h1, h2, h3, h4, hv0, ne_eq, not_true_eq_false,
          reduceCtorEq, not_false_eq_true, and_self, if_false, if_true]
      rcases pm_armed_write pm4 p _ (c + 1 + 1 + 1 + 1) f
        (kvs.write_offset + 20 + op.key.length + op.value.length) [FRAM_KVS_COMMIT] hok4
        (by omega) (by decide) (by simp only [List.length_singleton]; omega) with
        ⟨hc5, _, _, _⟩ | ⟨_, pm5, h5, _⟩
      · omega
      · unfold fram_kvs_write_record fram_kvs_write_commit
        simp only [hp, l1, l2, hco, ho, hpo, h1, h2, h3, h4, h5, hv0, ne_eq, not_true_eq_false,
          reduceCtorEq, not_false_eq_true, and_self, if_false, if_true]
    · rw [if_neg hv0] at hf
      rcases pm_armed_write pm3 p _ (c + 1 + 1 + 1) f
        (kvs.write_offset + 20 + op.key.length + op.value.length) [FRAM_KVS_COMMIT] hok3
        (by omega) (by decide) (by simp only [List.length_singleton]; omega) with
        ⟨hc5, _, _, _⟩ | ⟨_, pm5, h5, _⟩
      · omega
      · unfold fram_kvs_write_record fram_kvs_write_commit
        simp only [hp, l1, l2, hco, ho, h1, h2, h3, h5, hv0, ne_eq, not_true_eq_false,
          reduceCtorEq, not_false_eq_true, and_false, if_false, if_true]
  simp only [hw, reduceCtorEq, if_false]

/-- A call keeps the magic of the store. -/
theorem kvs_apply_magic (K : Kconfig) (kvs : fram_kvs_t) (pm : fram_pm_t) (op : kvs_op) :
    (fram_kvs_apply K kvs pm op).2.1.magic = kvs.magic := by
  cases op with
  | set k v =>
    show (fram_kvs_set K kvs pm k v).2.1.magic = kvs.magic
    unfold fram_kvs_set
    cases kvs.part <;> simp only <;> split_ifs <;> rfl
  | del k =>
    show (fram_kvs_delete kvs pm k).2.1.magic = kvs.magic
    unfold fram_kvs_delete
    cases kvs.part <;> simp only <;> split_ifs <;> rfl

/-- A run of calls keeps the magic of the store. -/
theorem kvs_apply_all_magic (K : Kconfig) :
    ∀ (ops : List kvs_op) (kvs : fram_kvs_t) (pm : fram_pm_t),
      (fram_kvs_apply_all K kvs pm ops).2.1.magic = kvs.magic := by
  intro ops
  induction ops with
  | nil => intro kvs pm; rfl
  | cons op rest ih =>
    intro kvs pm
    rw [fram_kvs_apply_all]
    by_cases hc : (fram_kvs_apply K kvs pm op).1 ≠ ESP_OK
    · rw [if_pos hc]
      exact kvs_apply_magic K kvs pm op
    · rw [if_neg hc, ih, kvs_apply_magic]

/-- The store after `fram_kvs_init` on an erased partition and a run of
successful calls: the partition holds the numbered log of the calls. -/
theorem kvs_run_exact (K : Kconfig) (pm pm1 pm2 : fram_pm_t) (p : fram_partition_t)
    (pmem : Nat → Nat) (cfg : fram_kvs_config_t) (kvs1 kvs2 : fram_kvs_t) (ops : List kvs_op)
    (hmagic : cfg.magic < U32) (h : PmOK pm p pmem)
    (hfind : fram_pm_find pm cfg.partition_name = some p)
    (herased : ∀ i, i < p.size → pmem i = 0xFF)
    (hinit : fram_kvs_init K pm cfg = (ESP_OK, kvs1, pm1))
    (hops : fram_kvs_apply_all K kvs1 pm1 ops = (ESP_OK, kvs2, pm2)) :
    ∃ pmem2, PmOK pm2 p pmem2 ∧ KvsExact K kvs2 p pmem2 ops ∧ kvs2.magic = cfg.magic := by
  obtain ⟨kvsI, pmI, hI, hokI, heI, hmI⟩ := kvs_init_exact K pm p pmem cfg hmagic h hfind herased
  rw [hI] at hinit
  have e1 : kvsI = kvs1 := (Prod.mk.inj (Prod.mk.inj hinit).2).1
  have e2 : pmI = pm1 := (Prod.mk.inj (Prod.mk.inj hinit).2).2
  subst e1 e2
  obtain ⟨pmem2, hok2, he2⟩ := kvs_apply_all_exact K p ops [] kvsI kvs2 pmI pm2 pmem heI hokI hops
  rw [List.nil_append] at he2
  refine ⟨pmem2, hok2, he2, ?_⟩
  have := kvs_apply_all_magic K ops kvsI pmI
  rw [hops] at this
  exact this.trans hmI

/-- The store object of a store whose fields are known. -/
theorem kvs_exact_eq (K : Kconfig) (kvs : fram_kvs_t) (p : fram_partition_t)
    (pmem : Nat → Nat) (ops : List kvs_op) (magic : Nat) (he : KvsExact K kvs p pmem ops)
    (hm : kvs.magic = magic) :
    ({ part := some p, magic := magic, write_offset := kvs_log_size ops
       next_seq := ops.length, ready := true, mutex := SemaphoreHandle_t.free } : fram_kvs_t)
      = kvs := by
  have h1 := he.after.part
  have h2 := he.after.offset
  have h3 := he.seq
  have h4 := he.ready
  have h5 := he.after.mutex
  cases kvs
  simp only at h1 h2 h3 h4 h5 hm
  subst h1 h2 h3 h4 h5 hm
  rfl

/-- C14 (amended). KVS set/delete is atomic under failure, on partitions of at
most `2^32 - 65572` bytes. On an erased partition of that size, after
`fram_kvs_init` and any run of successful sets and deletes, let
`fram_kvs_set` or `fram_kvs_delete` run on a device that holds the same
partition bytes and whose HAL may fail at any operation. On the mock armed to
fail at one of the writes of the call (commit clear, header, key, value when
there is one, commit byte) a call with acceptable arguments whose record fits
returns `ESP_FAIL`. Whenever the call does not return `ESP_OK`, the store
object is unchanged (`write_offset`, `next_seq`), and on a working device over
the resulting partition bytes `fram_kvs_init` returns `ESP_OK` with the store
object of before the call (the same `write_offset` and `next_seq`), and
`fram_kvs_get` then gives for every key, buffer and `*len` the same return
value, buffer content and `*len` as before the call. -/
theorem kvs_set_delete_atomic (K : Kconfig) (pm pm1 pm2 pmF pmR : fram_pm_t)
    (p : fram_partition_t) (pmem : Nat → Nat) (cfg : fram_kvs_config_t)
    (kvs1 kvs2 : fram_kvs_t) (ops : List kvs_op) (op : kvs_op)
    (hmagic : cfg.magic < U32) (h : PmOK pm p pmem)
    (hfind : fram_pm_find pm cfg.partition_name = some p)
    (herased : ∀ i, i < p.size → pmem i = 0xFF)
    (hsize : p.size + 65572 ≤ U32)
    (hinit : fram_kvs_init K pm cfg = (ESP_OK, kvs1, pm1))
    (hops : fram_kvs_apply_all K kvs1 pm1 ops = (ESP_OK, kvs2, pm2))
    (hF : PmAny pmF p (pm_media pm2 p))
    (hR : PmOK pmR p (pm_media (fram_kvs_apply K kvs2 pmF op).2.2 p))
    (hfindR : fram_pm_find pmR cfg.partition_name = some p) :
    (∀ c f, PmArmed pmF p (pm_media pm2 p) c f → op.valid K →
      kvs2.write_offset + op.size ≤ p.size → c + 5 < U32 →
      f ≤ c + (if op.value.length > 0 then 5 else 4) →
      (fram_kvs_apply K kvs2 pmF op).1 = ESP_FAIL) ∧
    ((fram_kvs_apply K kvs2 pmF op).1 ≠ ESP_OK →
      (fram_kvs_apply K kvs2 pmF op).2.1 = kvs2 ∧
      ∃ pm3, fram_kvs_init K pmR cfg = (ESP_OK, kvs2, pm3) ∧
        ∀ k buf cap, ∃ (r : esp_err_t × List Nat × Nat) (pm4 pm5 : fram_pm_t),
          fram_kvs_get K kvs2 pm2 k buf cap = (r.1, r.2.1, r.2.2, pm4) ∧
          fram_kvs_get K kvs2 pm3 k buf cap = (r.1, r.2.1, r.2.2, pm5)) := by
  obtain ⟨pmem2, h2, he2, hm2⟩ := kvs_run_exact K pm pm1 pm2 p pmem cfg kvs1 kvs2 ops hmagic h
    hfind herased hinit hops
  have ha2 := he2.after
  have hmedia := pm_any_media pm2 p pmem2 h2.pm_any
  have hU := hsize
  rw [U32_eq] at hU
  have hlen := kvs_log_size_ge_length ops
  have hfits := ha2.fits
  constructor
  · intro c f hA hv hfit hcU hf
    have hA2 : PmArmed pmF p pmem2 c f := by
      obtain ⟨a, b, mem, size, hd, hfit, hview⟩ := hA
      exact ⟨a, b, mem, size, hd, hfit, fun i hi => (hview i hi).trans (hmedia i hi)⟩
    exact kvs_apply_armed_fails K kvs2 p pmem2 pmF ops op c f ha2 hA2 hv hfit hcU hf
  · intro hfail
    have hF2 : PmAny pmF p pmem2 := pm_any_congr pmF p _ _ hF hmedia
    obtain ⟨hkvs, pmem1, hA1, hframe, hacc, hvl⟩ := kvs_apply_any K kvs2 p pmem2 pmF ops op ha2
      hF2 hsize hfail
    rw [ha2.offset] at hframe hacc hvl
    have hR1 : PmOK pmR p pmem1 := pm_ok_congr pmR p _ _ hR (pm_any_media _ p pmem1 hA1)
    have hlog1 : KLogSeq pmem1 cfg.magic 0 0 ops := by
      rw [← hm2]
      exact klogseq_congr pmem2 pmem1 kvs2.magic ops 0 0
        (fun a _ h2 => hframe a (by omega)) he2.log
    obtain ⟨pm3, hi3, hok3⟩ := kvs_init_of_log K pmR p pmem1 cfg ops kvs2 hmagic hR1 hfindR
      (by rw [U32_eq]; omega) hlog1 ha2.valid hfits hm2 hacc hvl
    rw [kvs_exact_eq K kvs2 p pmem2 ops cfg.magic he2 hm2] at hi3
    refine ⟨hkvs, pm3, hi3, ?_⟩
    intro k buf cap
    by_cases hk : 1 ≤ k.length ∧ k.length ≤ FRAM_KVS_KEY_MAX
    · have hstop2 : KStop K kvs2 p pmem2 (kvs_log_size ops) :=
        kvs_stop_erased K kvs2 p pmem2 _ ha2.part (by rw [U32_eq]; omega) ha2.erased
      have hstop1 : KStop K kvs2 p pmem1 (kvs_log_size ops) :=
        kvs_stop_of_accept K kvs2 p pmem1 _ ha2.part (by rw [U32_eq]; omega) hvl hacc
      have hklog1 : KLog pmem1 kvs2.magic 0 ops :=
        klog_congr pmem2 pmem1 kvs2.magic ops 0 (fun a _ h2 => hframe a (by omega)) ha2.log
      obtain ⟨pm4, g4⟩ := kvs_get_of_log K kvs2 p pmem2 pm2 ops k buf cap ha2.part ha2.magic_lt
        ha2.mutex h2 ha2.log ha2.valid hfits hstop2 hk.1 hk.2
      obtain ⟨pm5, g5⟩ := kvs_get_of_log K kvs2 p pmem1 pm3 ops k buf cap ha2.part ha2.magic_lt
        ha2.mutex hok3 hklog1 ha2.valid hfits hstop1 hk.1 hk.2
      exact ⟨kvs_get_spec (kvs_map_spec ops k) buf cap, pm4, pm5, g4, g5⟩
    · exact ⟨(ESP_ERR_INVALID_ARG, buf, cap), pm2, pm3,
        kvs_get_bad_key K kvs2 pm2 k buf cap hk, kvs_get_bad_key K kvs2 pm3 k buf cap hk⟩

/-! ## Key/value store: the partition table is left alone -/

theorem fram_kvs_write_record_same (kvs : fram_kvs_t) (pm : fram_pm_t)
    (hdr : fram_kvs_header_t) (key value : List Nat) :
    PmSame pm (fram_kvs_write_record kvs pm hdr key value).2 := by
  unfold fram_kvs_write_record fram_kvs_write_commit
  simp only
  have W := fun pm1 off data => fram_pm_write_same pm1 kvs.part off data
  have h0 := W pm (fram_kvs_commit_offset kvs.write_offset hdr.key_len hdr.value_len) [0]
  have h1 := PmSame.trans_same _ _ _ h0 (W _ kvs.write_offset hdr.to_bytes)
  split_ifs
  all_goals first
    | exact h0
    | exact h1
    | exact PmSame.trans_same _ _ _ h1 (W _ _ _)
    | exact PmSame.trans_same _ _ _ (PmSame.trans_same _ _ _ h1 (W _ _ _)) (W _ _ _)
    | exact PmSame.trans_same _ _ _ (PmSame.trans_same _ _ _
        (PmSame.trans_same _ _ _ h1 (W _ _ _)) (W _ _ _)) (W _ _ _)

theorem fram_kvs_apply_same (K : Kconfig) (kvs : fram_kvs_t) (pm : fram_pm_t) (op : kvs_op) :
    PmSame pm (fram_kvs_apply K kvs pm op).2.2 := by
  cases op with
  | set k v =>
    show PmSame pm (fram_kvs_set K kvs pm k v).2.2
    unfold fram_kvs_set
    cases kvs.part <;> simp only <;> split_ifs <;>
      first
        | exact ⟨rfl, rfl⟩
        | exact fram_kvs_write_record_same _ _ _ _ _
  | del k =>
    show PmSame pm (fram_kvs_delete kvs pm k).2.2
    unfold fram_kvs_delete
    cases kvs.part <;> simp only <;> split_ifs <;>
      first
        | exact ⟨rfl, rfl⟩
        | exact fram_kvs_write_record_same _ _ _ _ _

theorem fram_kvs_apply_all_same (K : Kconfig) :
    ∀ (ops : List kvs_op) (kvs : fram_kvs_t) (pm : fram_pm_t),
      PmSame pm (fram_kvs_apply_all K kvs pm ops).2.2 := by
  intro ops
  induction ops with
  | nil => intro kvs pm; exact ⟨rfl, rfl⟩
  | cons op rest ih =>
    intro kvs pm
    rw [fram_kvs_apply_all]
    by_cases hc : (fram_kvs_apply K kvs pm op).1 ≠ ESP_OK
    · rw [if_pos hc]
      exact fram_kvs_apply_same K kvs pm op
    · rw [if_neg hc]
      exact PmSame.trans_same _ _ _ (fram_kvs_apply_same K kvs pm op) (ih _ _)

theorem fram_kvs_crc_loop_same (kvs : fram_kvs_t) :
    ∀ (fuel : Nat) (pm : fram_pm_t) (voff rem crc : Nat),
      PmSame pm (fram_kvs_crc_loop kvs fuel pm voff rem crc).2.2 := by
  intro fuel
  induction fuel with
  | zero => intro pm _ _ _; exact ⟨rfl, rfl⟩
  | succ fuel ih =>
    intro pm voff rem crc
    unfold fram_kvs_crc_loop
    simp only
    split_ifs
    all_goals first
      | exact ⟨rfl, rfl⟩
      | exact fram_pm_read_same _ _ _ _
      | exact PmSame.trans_same _ _ _ (fram_pm_read_same _ _ _ _) (ih _ _ _ _)

theorem fram_kvs_compute_crc_same (kvs : fram_kvs_t) (pm : fram_pm_t) (offset : Nat)
    (hdr : fram_kvs_header_t) (key_buf : List Nat) :
    PmSame pm (fram_kvs_compute_crc kvs pm offset hdr key_buf).2.2 := by
  unfold fram_kvs_compute_crc
  simp only
  split_ifs
  all_goals first
    | exact ⟨rfl, rfl⟩
    | exact fram_pm_read_same _ _ _ _
    | exact fram_kvs_crc_loop_same _ _ _ _ _ _
    | exact PmSame.trans_same _ _ _ (fram_pm_read_same _ _ _ _)
        (fram_kvs_crc_loop_same _ _ _ _ _ _)

theorem pm_same_ite4 {α β : Type} (pm : fram_pm_t) (c : Prop) [Decidable c]
    (a b : esp_err_t × α × β × fram_pm_t)
    (ha : PmSame pm a.2.2.2) (hb : PmSame pm b.2.2.2) :
    PmSame pm (if c then a else b).2.2.2 := by
  split_ifs
  · exact ha
  · exact hb

theorem fram_kvs_find_end_loop_same (K : Kconfig) (kvs : fram_kvs_t) (p : fram_partition_t) :
    ∀ (fuel : Nat) (pm : fram_pm_t) (off ns : Nat) (kb : List Nat),
      PmSame pm (fram_kvs_find_end_loop K kvs p fuel pm off ns kb).2.2.2 := by
  intro fuel
  induction fuel with
  | zero => intro pm _ _ _; exact ⟨rfl, rfl⟩
  | succ fuel ih =>
    intro pm off ns kb
    have r1 : PmSame pm (fram_kvs_read_header kvs pm off).2.2 := fram_pm_read_same _ _ _ _
    have r2 := fun kl vl => PmSame.trans_same _ _ _ r1
      (show PmSame (fram_kvs_read_header kvs pm off).2.2
        (fram_kvs_read_commit kvs (fram_kvs_read_header kvs pm off).2.2 off kl vl).2.2 from
          fram_pm_read_same _ _ _ _)
    have r3 := fun kl vl hdr kb => PmSame.trans_same _ _ _ (r2 kl vl)
      (fram_kvs_compute_crc_same kvs
        (fram_kvs_read_commit kvs (fram_kvs_read_header kvs pm off).2.2 off kl vl).2.2 off hdr kb)
    unfold fram_kvs_find_end_loop
    simp only
    refine pm_same_ite4 pm _ _ _ ?_ ⟨rfl, rfl⟩
    refine pm_same_ite4 pm _ _ _ r1 ?_
    refine pm_same_ite4 pm _ _ _ r1 ?_
    refine pm_same_ite4 pm _ _ _ r1 ?_
    refine pm_same_ite4 pm _ _ _ (r2 _ _) ?_
    refine pm_same_ite4 pm _ _ _ (r2 _ _) ?_
    refine pm_same_ite4 pm _ _ _ (r3 _ _ _ _) ?_
    refine pm_same_ite4 pm _ _ _ (r3 _ _ _ _) ?_
    exact PmSame.trans_same _ _ _ (r3 _ _ _ _) (ih _ _ _ _)

theorem fram_kvs_init_same (K : Kconfig) (pm : fram_pm_t) (cfg : fram_kvs_config_t) :
    PmSame pm (fram_kvs_init K pm cfg).2.2 := by
  unfold fram_kvs_init
  simp only
  cases fram_pm_find pm cfg.partition_name with
  | none => exact ⟨rfl, rfl⟩
  | some p =>
    simp only [fram_kvs_find_end]
    have hl := fram_kvs_find_end_loop_same K
      { part := some p, magic := cfg.magic, write_offset := 0, next_seq := 0, ready := false
        mutex := SemaphoreHandle_t.free } p (p.size + 1) pm 0 0 []
    generalize fram_kvs_find_end_loop K _ p (p.size + 1) pm 0 0 [] = r at hl ⊢
    obtain ⟨e, o, n, pm1⟩ := r
    cases e <;> exact hl

/-! ## Key/value store: a failed call on the example stores -/

/-- The example run, the armed mock and the restart: what is known before the
failed call is looked at. -/
theorem example_kvs_fail_facts (pm : fram_pm_t) (p : fram_partition_t) (size : Nat)
    (ops : List kvs_op) (f : Nat) (op : kvs_op)
    (h : PmOK pm p (fun _ => 0xFF))
    (hfind : fram_pm_find pm example_kvs_cfg.partition_name = some p)
    (hvalid : ∀ op, op ∈ ops → op.valid example_K) (hfit : kvs_log_size ops ≤ p.size)
    (hdev : p.offset + p.size ≤ size) (hsz : size < U32) :
    fram_kvs_init example_K pm example_kvs_cfg =
      (ESP_OK, (fram_kvs_init example_K pm example_kvs_cfg).2.1,
        (fram_kvs_init example_K pm example_kvs_cfg).2.2) ∧
    example_kvs_run pm ops =
      (ESP_OK, (example_kvs_run pm ops).2.1, (example_kvs_run pm ops).2.2) ∧
    ∃ pmem2, PmOK (example_kvs_run pm ops).2.2 p pmem2 ∧
      KvsExact example_K (example_kvs_run pm ops).2.1 p pmem2 ops ∧
      (example_kvs_run pm ops).2.1.magic = example_kvs_cfg.magic ∧
      PmArmed (example_kvs_armed pm size ops f) p pmem2 0 f ∧
      PmArmed (example_kvs_armed pm size ops f) p (pm_media (example_kvs_run pm ops).2.2 p) 0 f ∧
      fram_pm_find (example_kvs_restart pm size ops f op) example_kvs_cfg.partition_name
        = some p ∧
      ∀ pmemX, PmAny (example_kvs_failed pm size ops f op).2.2 p pmemX →
        PmOK (example_kvs_restart pm size ops f op) p pmemX ∧
        PmOK (example_kvs_restart pm size ops f op) p
          (pm_media (example_kvs_failed pm size ops f op).2.2 p) := by
  obtain ⟨hinit, hrun, _⟩ := example_kvs_run_ok pm p ops h hfind hvalid hfit
  have hrun2 : fram_kvs_apply_all example_K (fram_kvs_init example_K pm example_kvs_cfg).2.1
      (fram_kvs_init example_K pm example_kvs_cfg).2.2 ops
      = (ESP_OK, (example_kvs_run pm ops).2.1, (example_kvs_run pm ops).2.2) := hrun
  obtain ⟨pmem2, h2, he2, hm2⟩ := kvs_run_exact example_K pm _ _ p (fun _ => 0xFF)
    example_kvs_cfg _ _ ops (by decide) h hfind (fun _ _ => rfl) hinit hrun2
  obtain ⟨hA, _, hs3⟩ := pm_remount_armed (example_kvs_run pm ops).2.2 p pmem2 size f h2.pm_any
    hdev hsz
  obtain ⟨hA', _, _⟩ := pm_remount_armed (example_kvs_run pm ops).2.2 p _ size f
    (pm_any_self _ _ _ h2.pm_any) hdev hsz
  have hs1 := fram_kvs_init_same example_K pm example_kvs_cfg
  have hs2 : PmSame (fram_kvs_init example_K pm example_kvs_cfg).2.2 (example_kvs_run pm ops).2.2 :=
    fram_kvs_apply_all_same example_K ops _ _
  have hs4 : PmSame (example_kvs_armed pm size ops f) (example_kvs_failed pm size ops f op).2.2 :=
    fram_kvs_apply_same example_K _ _ op
  have hs5 : PmSame (example_kvs_failed pm size ops f op).2.2
      (example_kvs_restart pm size ops f op) := ⟨rfl, rfl⟩
  have hsame : PmSame pm (example_kvs_restart pm size ops f op) :=
    PmSame.trans_same _ _ _ (PmSame.trans_same _ _ _ (PmSame.trans_same _ _ _
      (PmSame.trans_same _ _ _ hs1 hs2) hs3) hs4) hs5
  refine ⟨hinit, hrun, pmem2, h2, he2, hm2, hA, hA', ?_, ?_⟩
  · rw [fram_pm_find_same _ _ _ hsame]
    exact hfind
  · intro pmemX hX
    obtain ⟨hR1, hR2, _⟩ := pm_remount_ok (example_kvs_failed pm size ops f op).2.2 p pmemX size
      hX hdev hsz
    exact ⟨hR1, hR2⟩

/-- Witness for C14: after `set("cfg", "on", 2)`, `delete("cfg")`,
`set("cfg", "off", 3)` on the erased `"kvs"` partition of the tests, the call
`set("a", "one", 3)` on the mock armed to fail at its third operation (commit
clear and header written, key write failed) returns `ESP_FAIL` with the store
object unchanged; after a restart `fram_kvs_init` gives back the store object
of before the call, and `fram_kvs_get("cfg")` returns `"off"` before the call
and after the restart. -/
theorem kvs_set_delete_atomic_witness :
    (example_kvs_failed example_pm 32768 example_kvs_ops6 3
      (kvs_op.set [0x61] [0x6F, 0x6E, 0x65])).1 = ESP_FAIL ∧
    (example_kvs_failed example_pm 32768 example_kvs_ops6 3
      (kvs_op.set [0x61] [0x6F, 0x6E, 0x65])).2.1
      = (example_kvs_run example_pm example_kvs_ops6).2.1 ∧
    ∃ pm3 pm4 pm5, example_kvs_reinit example_pm 32768 example_kvs_ops6 3
        (kvs_op.set [0x61] [0x6F, 0x6E, 0x65])
        = (ESP_OK, (example_kvs_run example_pm example_kvs_ops6).2.1, pm3) ∧
      fram_kvs_get example_K (example_kvs_run example_pm example_kvs_ops6).2.1
        (example_kvs_run example_pm example_kvs_ops6).2.2 [0x63, 0x66, 0x67]
        [0, 0, 0, 0, 0, 0, 0, 0] 8 = (ESP_OK, [0x6F, 0x66, 0x66, 0, 0, 0, 0, 0], 3, pm4) ∧
      fram_kvs_get example_K (example_kvs_run example_pm example_kvs_ops6).2.1 pm3
        [0x63, 0x66, 0x67] [0, 0, 0, 0, 0, 0, 0, 0] 8
        = (ESP_OK, [0x6F, 0x66, 0x66, 0, 0, 0, 0, 0], 3, pm5) := by
  obtain ⟨hinit, hrun, pmem2, h2, he2, hm2, hA, hA', hfindR, hrest⟩ :=
    example_kvs_fail_facts example_pm example_kvs_part 32768 example_kvs_ops6 3
      (kvs_op.set [0x61] [0x6F, 0x6E, 0x65]) example_pm_kvs_ok example_kvs_find
      example_kvs_ops6_valid (by decide) (by decide) (by decide)
  have ha2 := he2.after
  have hwo : (example_kvs_run example_pm example_kvs_ops6).2.1.write_offset = 77 := by
    rw [ha2.offset]
    decide
  have hfl : (example_kvs_failed example_pm 32768 example_kvs_ops6 3
      (kvs_op.set [0x61] [0x6F, 0x6E, 0x65])).1 = ESP_FAIL :=
    kvs_apply_armed_fails example_K _ example_kvs_part pmem2 _ example_kvs_ops6 _ 0 3 ha2 hA
      ⟨by decide, by decide, by decide, by decide⟩ (by rw [hwo]; decide) (by decide) (by decide)
  obtain ⟨_, pmem1, hA1, _⟩ := kvs_apply_any example_K _ example_kvs_part pmem2 _
    example_kvs_ops6 (kvs_op.set [0x61] [0x6F, 0x6E, 0x65]) ha2 hA.armed_any (by decide)
    (by
      have : (fram_kvs_apply example_K (example_kvs_run example_pm example_kvs_ops6).2.1
        (example_kvs_armed example_pm 32768 example_kvs_ops6 3)
        (kvs_op.set [0x61] [0x6F, 0x6E, 0x65])).1 = ESP_FAIL := hfl
      rw [this]; decide)
  obtain ⟨_, hR⟩ := hrest pmem1 hA1
  have hw := kvs_set_delete_atomic example_K example_pm _ _
    (example_kvs_armed example_pm 32768 example_kvs_ops6 3)
    (example_kvs_restart example_pm 32768 example_kvs_ops6 3
      (kvs_op.set [0x61] [0x6F, 0x6E, 0x65]))
    example_kvs_part (fun _ => 0xFF) example_kvs_cfg _ _ example_kvs_ops6
    (kvs_op.set [0x61] [0x6F, 0x6E, 0x65]) (by decide) example_pm_kvs_ok example_kvs_find
    (fun _ _ => rfl) (by decide) hinit hrun hA'.armed_any hR hfindR
  have hfail := hw.1 0 3 hA' ⟨by decide, by decide, by decide, by decide⟩
    (by rw [hwo]; decide) (by decide) (by decide)
  obtain ⟨hkvs, pm3, hre, hget⟩ := hw.2 (by rw [hfail]; decide)
  obtain ⟨r, pm4, pm5, g4, g5⟩ := hget [0x63, 0x66, 0x67] [0, 0, 0, 0, 0, 0, 0, 0] 8
  have hstop2 : KStop example_K (example_kvs_run example_pm example_kvs_ops6).2.1
      example_kvs_part pmem2 (kvs_log_size example_kvs_ops6) :=
    kvs_stop_erased example_K _ example_kvs_part pmem2 _ ha2.part (by decide) ha2.erased
  obtain ⟨pm4', g4'⟩ := kvs_get_of_log example_K _ example_kvs_part pmem2
    (example_kvs_run example_pm example_kvs_ops6).2.2 example_kvs_ops6 [0x63, 0x66, 0x67]
    [0, 0, 0, 0, 0, 0, 0, 0] 8 ha2.part ha2.magic_lt ha2.mutex h2 ha2.log ha2.valid ha2.fits
    hstop2 (by decide) (by decide)
  have hspec : kvs_get_spec (kvs_map_spec example_kvs_ops6 [0x63, 0x66, 0x67])
      [0, 0, 0, 0, 0, 0, 0, 0] 8 = (ESP_OK, [0x6F, 0x66, 0x66, 0, 0, 0, 0, 0], 3) := by decide
  rw [hspec] at g4'
  rw [g4'] at g4
  have e1 : r.1 = ESP_OK := (Prod.mk.inj g4).1.symm
  have e2 : r.2.1 = [0x6F, 0x66, 0x66, 0, 0, 0, 0, 0] := (Prod.mk.inj (Prod.mk.inj g4).2).1.symm
  have e3 : r.2.2 = 3 := (Prod.mk.inj (Prod.mk.inj (Prod.mk.inj g4).2).2).1.symm
  rw [e1, e2, e3] at g5
  exact ⟨hfail, hkvs, pm3, pm4', pm5, hre, g4', g5⟩

/-! ## Key/value store: a failed call on a partition of nearly `2^32` bytes -/

/-- The magic in the header read at an offset, from the four bytes that hold
it. -/
theorem kvs_read_magic (m : Nat → Nat) (w : Nat) :
    (fram_kvs_header_of_bytes (mem_read m w 20)).magic
      = m w + 256 * (m (w + 1) + 256 * (m (w + 2) + 256 * m (w + 3))) := by
  simp [fram_kvs_header_of_bytes, mem_read, slice, le_val, List.range, List.range.loop]

theorem mem_read_getD (m : Nat → Nat) (a n i : Nat) (h : i < n) :
    (mem_read m a n).getD i 0 = m (a + i) := by
  simp [mem_read, List.getD_eq_getElem?_getD, List.getElem?_map, List.getElem?_range h]

/-- The common end of `fram_kvs_set` and `fram_kvs_delete` on a mock armed to
fail at its second operation, when the space check passes: the byte at the
commit offset is zeroed, the header write fails, and the call returns
`ESP_FAIL` with the store object unchanged. -/
theorem kvs_commit_fail_after_clear (kvs : fram_kvs_t) (p : fram_partition_t)
    (pmem : Nat → Nat) (pm : fram_pm_t) (op : kvs_op) (c : Nat)
    (hp : kvs.part = some p) (h : PmArmed pm p pmem c (c + 2)) (hcU : c + 2 < U32)
    (hspace : ¬ (kvs.write_offset + op.size % U32) % U32 > p.size)
    (hco : fram_kvs_commit_offset kvs.write_offset op.key.length op.value.length + 1 ≤ p.size)
    (hhdr : kvs.write_offset + 20 ≤ p.size) :
    ∃ pm1, kvs_commit_record kvs pm p op = (ESP_FAIL, kvs, pm1) ∧
      PmArmed pm1 p (mem_write pmem
        (fram_kvs_commit_offset kvs.write_offset op.key.length op.value.length) [0])
        (c + 2) (c + 2) := by
  have hlen := kvs_to_bytes_length (kvs_header_for kvs.magic kvs.next_seq op)
  obtain ⟨l1, l2, _, _⟩ := kvs_header_for_lens kvs.magic kvs.next_seq op
  obtain ⟨pm1, h1, hok1⟩ := pm_armed_write_ok pm p pmem c (c + 2)
    (fram_kvs_commit_offset kvs.write_offset op.key.length op.value.length) [0] h
    (by omega) (by omega) (by decide) (by simp only [List.length_singleton]; omega)
  have hm : (c + 1 + 1) % U32 = c + 2 := Nat.mod_eq_of_lt (by omega)
  obtain ⟨pm2, h2, hok2⟩ := pm_armed_write_fail pm1 p _ (c + 1) (c + 2) kvs.write_offset
    (kvs_header_for kvs.magic kvs.next_seq op).to_bytes hok1 (by rw [hm])
    (by rw [hlen]; decide) (by rw [hlen]; omega)
  rw [hm] at hok2
  refine ⟨pm2, ?_, hok2⟩
  unfold kvs_commit_record
  rw [if_neg hspace]
  have hw : fram_kvs_write_record kvs pm (kvs_header_for kvs.magic kvs.next_seq op)
      op.key op.value = (ESP_FAIL, pm2) := by
    unfold fram_kvs_write_record fram_kvs_write_commit
    simp only [hp, l1, l2, h1, h2, ne_eq, not_true_eq_false, reduceCtorEq, not_false_eq_true,
      false_and, if_false, if_true]
  simp only [hw, reduceCtorEq, if_false]

theorem example_big_size2 : kvs_log_size example_big_ops2 = 4294967250 := by
  unfold example_big_ops2
  rw [kvs_log_size_replicate]
  have : (kvs_op.set [0x61] [0x6F, 0x6E, 0x65]).size = 25 := rfl
  rw [this]

theorem example_big_valid2 (op : kvs_op) (ho : op ∈ example_big_ops2) : op.valid example_K := by
  rw [List.eq_of_mem_replicate ho]
  exact ⟨by decide, by decide, by decide, by decide⟩

/-- No record is accepted at the start of a log whose first record has lost
the last byte of its magic. -/
theorem kvs_accept_magic_cleared (K : Kconfig) (kvs : fram_kvs_t) (p : fram_partition_t)
    (pmem : Nat → Nat) (seq : Nat) (op : kvs_op)
    (hm : 16777216 ≤ kvs.magic) (hm2 : kvs.magic < U32)
    (hrec : KRec pmem 0 kvs.magic seq op) :
    kvs_accept K kvs p (mem_write pmem 3 [0]) 0 = none ∧
    (fram_kvs_header_of_bytes (mem_read (mem_write pmem 3 [0]) 0 20)).value_len
      = op.value.length % 256 + 256 * (op.value.length / 256 % 256) := by
  have hsize := kvs_op_size_eq op
  unfold KRec at hrec
  rw [hsize] at hrec
  obtain ⟨i1, _, _, _⟩ := kvs_image_parts pmem 0 _ op.key op.value FRAM_KVS_COMMIT
    (kvs_to_bytes_length _) hrec
  have hbyte : ∀ i, i < 20 → pmem i = (kvs_header_for kvs.magic seq op).to_bytes.getD i 0 := by
    intro i hi
    rw [← i1, mem_read_getD _ _ _ _ hi, Nat.zero_add]
  have hout : ∀ a, a ≠ 3 → mem_write pmem 3 [0] a = pmem a := by
    intro a ha
    exact mem_write_outside _ _ _ _ (by simp only [List.length_singleton]; omega)
  have h3 : mem_write pmem 3 [0] 3 = 0 := mem_write_inside pmem 3 [0] 0 (by decide)
  have b0 : (kvs_header_for kvs.magic seq op).to_bytes.getD 0 0 = kvs.magic % 256 := rfl
  have b1 : (kvs_header_for kvs.magic seq op).to_bytes.getD 1 0 = kvs.magic / 256 % 256 := rfl
  have b2 : (kvs_header_for kvs.magic seq op).to_bytes.getD 2 0
      = kvs.magic / 256 / 256 % 256 := rfl
  have b10 : (kvs_header_for kvs.magic seq op).to_bytes.getD 10 0
      = op.value.length % 256 := rfl
  have b11 : (kvs_header_for kvs.magic seq op).to_bytes.getD 11 0
      = op.value.length / 256 % 256 := rfl
  obtain ⟨_, r2⟩ := kvs_read_lens (mem_write pmem 3 [0]) 0
  have r1 := kvs_read_magic (mem_write pmem 3 [0]) 0
  simp only [Nat.zero_add] at r1 r2
  rw [hout 0 (by decide), hout 1 (by decide), hout 2 (by decide), h3, hbyte 0 (by decide),
    hbyte 1 (by decide), hbyte 2 (by decide), b0, b1, b2] at r1
  rw [hout 10 (by decide), hout 11 (by decide), hbyte 10 (by decide), hbyte 11 (by decide),
    b10, b11] at r2
  refine ⟨?_, r2⟩
  cases hacc : kvs_accept K kvs p (mem_write pmem 3 [0]) 0 with
  | none => rfl
  | some h =>
    exfalso
    obtain ⟨e, _, e3, _⟩ := kvs_accept_some K kvs p _ 0 h hacc
    obtain ⟨k1, _⟩ := kvs_valid_key_len K kvs h e3
    rw [e, r1] at k1
    rw [U32_eq] at hm2
    omega

theorem klogseq_replicate_head (pmem : Nat → Nat) (magic off seq n : Nat) (op : kvs_op)
    (h : KLogSeq pmem magic off seq (List.replicate (n + 1) op)) : KRec pmem off magic seq op := by
  rw [List.replicate_succ] at h
  exact h.1

/-- Counterexample for C14: on a partition of `2^32 - 2` bytes, after
171798690 successful calls `set("a", "one", 3)` the store ends at `2^32 - 46`
and `fram_kvs_get("a")` returns `"one"`. In `set("a", value, 28)` the 32-bit
sum of the space check wraps, so the check passes and the commit offset wraps
to offset 3, inside the magic of the first record. On the mock armed to fail
at its second operation the call zeroes that byte, fails at the header write
and returns `ESP_FAIL`. On the resulting media `fram_kvs_init` returns
`ESP_OK` with `write_offset = 0`, not `2^32 - 46`, and `fram_kvs_get("a")`
returns `ESP_ERR_NOT_FOUND`. -/
theorem kvs_set_delete_atomic_counterexample :
    (example_kvs_run example_big_pm example_big_ops2).1 = ESP_OK ∧
    (example_kvs_run example_big_pm example_big_ops2).2.1.write_offset = 4294967250 ∧
    (∃ pm4, fram_kvs_get example_K (example_kvs_run example_big_pm example_big_ops2).2.1
        (example_kvs_run example_big_pm example_big_ops2).2.2 [0x61]
        [0, 0, 0, 0, 0, 0, 0, 0] 8 = (ESP_OK, [0x6F, 0x6E, 0x65, 0, 0, 0, 0, 0], 3, pm4)) ∧
    (example_kvs_failed example_big_pm 4294967295 example_big_ops2 2 example_big_set).1
      = ESP_FAIL ∧
    (example_kvs_reinit example_big_pm 4294967295 example_big_ops2 2 example_big_set).1
      = ESP_OK ∧
    (example_kvs_reinit example_big_pm 4294967295 example_big_ops2 2
      example_big_set).2.1.write_offset = 0 ∧
    (fram_kvs_get example_K
      (example_kvs_reinit example_big_pm 4294967295 example_big_ops2 2 example_big_set).2.1
      (example_kvs_reinit example_big_pm 4294967295 example_big_ops2 2 example_big_set).2.2
      [0x61] [0, 0, 0, 0, 0, 0, 0, 0] 8).1 = ESP_ERR_NOT_FOUND := by
  obtain ⟨hinit, hrun, pmem2, h2, he2, hm2, hA, _, hfindR, hrest⟩ :=
    example_kvs_fail_facts example_big_pm example_big_part 4294967295 example_big_ops2 2
      example_big_set example_big_pm_ok example_big_find example_big_valid2
      (by rw [example_big_size2]; decide) (by decide) (by decide)
  have ha2 := he2.after
  have hwo : (example_kvs_run example_big_pm example_big_ops2).2.1.write_offset = 4294967250 := by
    rw [ha2.offset, example_big_size2]
  have hrec : KRec pmem2 0 (example_kvs_run example_big_pm example_big_ops2).2.1.magic 0
      (kvs_op.set [0x61] [0x6F, 0x6E, 0x65]) :=
    klogseq_replicate_head pmem2 _ 0 0 171798689 _ he2.log
  -- the call before the failure
  have hstop2 : KStop example_K (example_kvs_run example_big_pm example_big_ops2).2.1
      example_big_part pmem2 (kvs_log_size example_big_ops2) :=
    kvs_stop_erased example_K _ example_big_part pmem2 _ ha2.part
      (by rw [example_big_size2]; decide) ha2.erased
  obtain ⟨pm4, g4⟩ := kvs_get_of_log example_K _ example_big_part pmem2
    (example_kvs_run example_big_pm example_big_ops2).2.2 example_big_ops2 [0x61]
    [0, 0, 0, 0, 0, 0, 0, 0] 8 ha2.part ha2.magic_lt ha2.mutex h2 ha2.log ha2.valid ha2.fits
    hstop2 (by decide) (by decide)
  have hs : kvs_map_spec example_big_ops2 [0x61] = some [0x6F, 0x6E, 0x65] :=
    kvs_map_spec_replicate 171798689 _ _
  have hspec : kvs_get_spec (some [0x6F, 0x6E, 0x65]) [0, 0, 0, 0, 0, 0, 0, 0] 8
      = (ESP_OK, [0x6F, 0x6E, 0x65, 0, 0, 0, 0, 0], 3) := by decide
  rw [hs, hspec] at g4
  -- the failed call
  have hco3 : fram_kvs_commit_offset
      (example_kvs_run example_big_pm example_big_ops2).2.1.write_offset
      example_big_set.key.length example_big_set.value.length = 3 := by
    rw [hwo]; decide
  obtain ⟨pmF, hfl, hAF⟩ := kvs_commit_fail_after_clear
    (example_kvs_run example_big_pm example_big_ops2).2.1 example_big_part pmem2
    (example_kvs_armed example_big_pm 4294967295 example_big_ops2 2) example_big_set 0
    ha2.part hA (by decide) (by rw [hwo]; decide) (by rw [hco3]; decide) (by rw [hwo]; decide)
  rw [hco3] at hAF
  have hfl2 : example_kvs_failed example_big_pm 4294967295 example_big_ops2 2 example_big_set
      = (ESP_FAIL, (example_kvs_run example_big_pm example_big_ops2).2.1, pmF) := by
    unfold example_kvs_failed
    rw [kvs_apply_eq example_K _ _ example_big_part example_big_set ha2.part ha2.mutex
      ⟨by decide, by decide, by decide, by decide⟩]
    exact hfl
  have hpm : (example_kvs_failed example_big_pm 4294967295 example_big_ops2 2
      example_big_set).2.2 = pmF := by rw [hfl2]
  -- the restart
  obtain ⟨hR, _⟩ := hrest (mem_write pmem2 3 [0]) (by rw [hpm]; exact hAF.armed_any)
  obtain ⟨hacc, hvl⟩ := kvs_accept_magic_cleared example_K
    (example_kvs_run example_big_pm example_big_ops2).2.1 example_big_part pmem2 0
    (kvs_op.set [0x61] [0x6F, 0x6E, 0x65]) (by rw [hm2]; decide) ha2.magic_lt hrec
  have hvl2 : (fram_kvs_header_of_bytes (mem_read (mem_write pmem2 3 [0]) 0 20)).value_len
      < 65536 := by
    rw [hvl]; decide
  obtain ⟨pm3, hi3, hok3⟩ := kvs_init_of_log example_K
    (example_kvs_restart example_big_pm 4294967295 example_big_ops2 2 example_big_set)
    example_big_part (mem_write pmem2 3 [0]) example_kvs_cfg []
    (example_kvs_run example_big_pm example_big_ops2).2.1 (by decide) hR hfindR (by decide)
    trivial (fun _ ho => absurd ho (List.not_mem_nil _)) (Nat.zero_le _) hm2 hacc
    (fun _ => hvl2)
  have hre : example_kvs_reinit example_big_pm 4294967295 example_big_ops2 2 example_big_set
      = (ESP_OK, { part := some example_big_part, magic := example_kvs_cfg.magic
                   write_offset := 0, next_seq := 0, ready := true
                   mutex := SemaphoreHandle_t.free }, pm3) := hi3
  have hacc3 : kvs_accept example_K
      { part := some example_big_part, magic := example_kvs_cfg.magic
        write_offset := 0, next_seq := 0, ready := true, mutex := SemaphoreHandle_t.free }
      example_big_part (mem_write pmem2 3 [0]) 0 = none := by
    rw [← hacc]
    exact kvs_accept_magic example_K _ _ _ _ _ hm2.symm
  obtain ⟨pm5, g5⟩ := kvs_get_of_log example_K
    { part := some example_big_part, magic := example_kvs_cfg.magic
      write_offset := 0, next_seq := 0, ready := true, mutex := SemaphoreHandle_t.free }
    example_big_part (mem_write pmem2 3 [0]) pm3 [] [0x61] [0, 0, 0, 0, 0, 0, 0, 0] 8 rfl
    (by decide) rfl hok3 trivial (fun _ ho => absurd ho (List.not_mem_nil _)) (Nat.zero_le _)
    (kvs_stop_of_accept example_K _ example_big_part _ 0 rfl (by decide) (fun _ => hvl2) hacc3)
    (by decide) (by decide)
  refine ⟨by rw [hrun], hwo, ⟨pm4, g4⟩, by rw [hfl2], by rw [hre], by rw [hre], ?_⟩
  rw [hre]
  show (fram_kvs_get example_K _ pm3 [0x61] [0, 0, 0, 0, 0, 0, 0, 0] 8).1 = ESP_ERR_NOT_FOUND
  rw [g5]
  rfl

/-! ## Key/value store: the loops over any partition content -/

/-- The loop of `fram_kvs_find_end` over any content of a working partition of
at most `2^32 - 65572` bytes, with enough fuel to reach the end of the
partition: it returns `ESP_OK` with the stop offset and sequence number read
off the partition bytes. -/
theorem kvs_find_end_walk (K : Kconfig) (kvs : fram_kvs_t) (p : fram_partition_t)
    (pmem : Nat → Nat) (hp : kvs.part = some p) (hb : p.size + 65572 ≤ U32)
    (hvl : ∀ off, off + 21 ≤ p.size →
      (fram_kvs_header_of_bytes (mem_read pmem off 20)).value_len < 65536) :
    ∀ (fuel off ns : Nat) (pm : fram_pm_t) (key_buf : List Nat),
      PmOK pm p pmem → off ≤ p.size → p.size < off + fuel →
      ∃ pm1, fram_kvs_find_end_loop K kvs p fuel pm off ns key_buf
          = (ESP_OK, (kvs_walk K kvs p pmem fuel off ns).1,
              (kvs_walk K kvs p pmem fuel off ns).2, pm1) ∧ PmOK pm1 p pmem := by
  intro fuel
  induction fuel with
  | zero => intro off ns pm key_buf _ h1 h2; omega
  | succ f ih =>
    intro off ns pm key_buf h h1 h2
    obtain ⟨pm1, kb1, hok1, e1⟩ := kvs_find_end_iter K kvs p pmem pm f off ns key_buf hp h
      (by omega) (hvl off)
    cases hacc : kvs_accept K kvs p pmem off with
    | none =>
      rw [hacc] at e1
      refine ⟨pm1, ?_, hok1⟩
      rw [e1, kvs_walk, hacc]
    | some hdr =>
      rw [hacc] at e1
      obtain ⟨_, _, _, a4, _, _⟩ := kvs_accept_some K kvs p pmem off hdr hacc
      obtain ⟨pm2, e2, hok2⟩ := ih (off + (20 + hdr.key_len + hdr.value_len + 1))
        (kvs_seq_upd ns hdr.seq) pm1 kb1 hok1 a4 (by omega)
      refine ⟨pm2, ?_, hok2⟩
      simp only at e1
      rw [e1, e2, kvs_walk, hacc]

/-- The loop of `fram_kvs_scan` over any content of a working partition of at
most `2^32 - 65572` bytes, with enough fuel to reach the end of the partition:
it returns `ESP_OK` with the state read off the partition bytes. -/
theorem kvs_scan_walk (K : Kconfig) (kvs : fram_kvs_t) (p : fram_partition_t)
    (pmem : Nat → Nat) (key : List Nat) (hp : kvs.part = some p) (hb : p.size + 65572 ≤ U32)
    (hvl : ∀ off, off + 21 ≤ p.size →
      (fram_kvs_header_of_bytes (mem_read pmem off 20)).value_len < 65536) :
    ∀ (fuel off : Nat) (st : kvs_scan_t) (pm : fram_pm_t) (key_buf : List Nat),
      PmOK pm p pmem → off ≤ p.size → p.size < off + fuel →
      ∃ pm1, fram_kvs_scan_loop K kvs p key fuel pm off st key_buf
          = (ESP_OK, kvs_walk_scan K kvs p pmem key fuel off st, pm1) ∧ PmOK pm1 p pmem := by
  intro fuel
  induction fuel with
  | zero => intro off st pm key_buf _ h1 h2; omega
  | succ f ih =>
    intro off st pm key_buf h h1 h2
    obtain ⟨pm1, kb1, hok1, e1⟩ := kvs_scan_iter K kvs p pmem pm key f off st key_buf hp h
      (by omega) (hvl off)
    cases hacc : kvs_accept K kvs p pmem off with
    | none =>
      rw [hacc] at e1
      refine ⟨pm1, ?_, hok1⟩
      rw [e1, kvs_walk_scan, hacc]
    | some hdr =>
      rw [hacc] at e1
      obtain ⟨_, _, _, a4, _, _⟩ := kvs_accept_some K kvs p pmem off hdr hacc
      obtain ⟨pm2, e2, hok2⟩ := ih (off + (20 + hdr.key_len + hdr.value_len + 1))
        (kvs_scan_upd pmem key st off hdr) pm1 kb1 hok1 a4 (by omega)
      refine ⟨pm2, ?_, hok2⟩
      simp only at e1
      rw [e1, e2, kvs_walk_scan, hacc]

/-- The walk never goes back. -/
theorem kvs_walk_ge (K : Kconfig) (kvs : fram_kvs_t) (p : fram_partition_t)
    (pmem : Nat → Nat) :
    ∀ (fuel off ns : Nat), off ≤ (kvs_walk K kvs p pmem fuel off ns).1 := by
  intro fuel
  induction fuel with
  | zero => intro off ns; exact Nat.le_refl _
  | succ f ih =>
    intro off ns
    rw [kvs_walk]
    cases hacc : kvs_accept K kvs p pmem off with
    | none => exact Nat.le_refl _
    | some hdr =>
      have := ih (off + (20 + hdr.key_len + hdr.value_len + 1)) (kvs_seq_upd ns hdr.seq)
      simp only
      omega

/-- The sequence number of the walk stays below `2^32`. -/
theorem kvs_walk_seq_lt (K : Kconfig) (kvs : fram_kvs_t) (p : fram_partition_t)
    (pmem : Nat → Nat) :
    ∀ (fuel off ns : Nat), ns < U32 → (kvs_walk K kvs p pmem fuel off ns).2 < U32 := by
  intro fuel
  induction fuel with
  | zero => intro off ns h; exact h
  | succ f ih =>
    intro off ns h
    rw [kvs_walk]
    cases hacc : kvs_accept K kvs p pmem off with
    | none => exact h
    | some hdr =>
      simp only
      apply ih
      unfold kvs_seq_upd
      split_ifs
      · exact Nat.mod_lt _ (by decide)
      · exact h

/-- An accepted record only depends on its own bytes. -/
theorem kvs_accept_frame (K : Kconfig) (kvs : fram_kvs_t) (p : fram_partition_t)
    (m m1 : Nat → Nat) (off : Nat) (hdr : fram_kvs_header_t)
    (hacc : kvs_accept K kvs p m off = some hdr)
    (hsame : ∀ a, off ≤ a → a < off + (20 + hdr.key_len + hdr.value_len + 1) → m1 a = m a) :
    kvs_accept K kvs p m1 off = some hdr := by
  obtain ⟨a1, a2, a3, a4, a5, a6⟩ := kvs_accept_some K kvs p m off hdr hacc
  have h20 : KVS_HEADER_SIZE = 20 := rfl
  have r1 : mem_read m1 off 20 = mem_read m off 20 :=
    mem_read_congr _ _ _ _ (fun i hi => hsame (off + i) (by omega) (by omega))
  have r2 : mem_read m1 (off + 20) hdr.key_len = mem_read m (off + 20) hdr.key_len :=
    mem_read_congr _ _ _ _ (fun i hi => hsame (off + 20 + i) (by omega) (by omega))
  have r3 : mem_read m1 (off + 20 + hdr.key_len) hdr.value_len
      = mem_read m (off + 20 + hdr.key_len) hdr.value_len :=
    mem_read_congr _ _ _ _ (fun i hi => hsame (off + 20 + hdr.key_len + i) (by omega) (by omega))
  have r4 : m1 (off + 20 + hdr.key_len + hdr.value_len) = FRAM_KVS_COMMIT := by
    rw [hsame _ (by omega) (by omega)]
    exact a5
  unfold kvs_accept
  rw [if_pos (by rw [h20]; omega)]
  simp only [h20, r1, ← a1, a3, r2, r3, r4, a6, Bool.not_true, Bool.false_eq_true, if_false,
    ne_eq, not_true_eq_false]
  rw [if_neg (by omega)]

/-- A store whose scan end is `w`, after a record has been written at `w` over
an area behind which no record is accepted: the walk of `fram_kvs_find_end`
over the new content ends behind the new record, and the walk of
`fram_kvs_scan` ends in the state that the new record leaves. -/
theorem kvs_walk_extend (K : Kconfig) (kvs : fram_kvs_t) (p : fram_partition_t)
    (m m1 : Nat → Nat) (key : List Nat) (w : Nat) (hdr : fram_kvs_header_t)
    (hframe : ∀ a, a < w → m1 a = m a)
    (hnew : kvs_accept K kvs p m1 w = some hdr)
    (hend : kvs_accept K kvs p m1 (w + (20 + hdr.key_len + hdr.value_len + 1)) = none) :
    ∀ (fuel off ns : Nat) (st : kvs_scan_t),
      p.size < off + fuel → (kvs_walk K kvs p m fuel off ns).1 = w →
      kvs_walk K kvs p m1 fuel off ns
        = (w + (20 + hdr.key_len + hdr.value_len + 1),
            kvs_seq_upd (kvs_walk K kvs p m fuel off ns).2 hdr.seq) ∧
      ∃ st1, kvs_walk_scan K kvs p m1 key fuel off st = kvs_scan_upd m1 key st1 w hdr := by
  obtain ⟨_, _, _, n4, _, _⟩ := kvs_accept_some K kvs p m1 w hdr hnew
  intro fuel
  induction fuel with
  | zero =>
    intro off ns st h1 h2
    rw [kvs_walk] at h2
    simp only at h2
    omega
  | succ f ih =>
    intro off ns st h1 h2
    cases hacc : kvs_accept K kvs p m off with
    | none =>
      have hwm : kvs_walk K kvs p m (f + 1) off ns = (off, ns) := by rw [kvs_walk, hacc]
      rw [hwm] at h2 ⊢
      simp only at h2
      subst h2
      obtain ⟨g, rfl⟩ : ∃ g, f = g + 1 := ⟨f - 1, by omega⟩
      have e1 : kvs_walk K kvs p m1 (g + 1 + 1) off ns
          = (off + (20 + hdr.key_len + hdr.value_len + 1), kvs_seq_upd ns hdr.seq) := by
        rw [kvs_walk, hnew]
        simp only
        rw [kvs_walk, hend]
      have e2 : kvs_walk_scan K kvs p m1 key (g + 1 + 1) off st
          = kvs_scan_upd m1 key st off hdr := by
        rw [kvs_walk_scan, hnew]
        simp only
        rw [kvs_walk_scan, hend]
      exact ⟨e1, st, e2⟩
    | some h =>
      have hwm : kvs_walk K kvs p m (f + 1) off ns
          = kvs_walk K kvs p m f (off + (20 + h.key_len + h.value_len + 1))
              (kvs_seq_upd ns h.seq) := by rw [kvs_walk, hacc]
      rw [hwm] at h2 ⊢
      have hge := kvs_walk_ge K kvs p m f (off + (20 + h.key_len + h.value_len + 1))
        (kvs_seq_upd ns h.seq)
      rw [h2] at hge
      have hacc1 := kvs_accept_frame K kvs p m m1 off h hacc
        (fun a _ ha2 => hframe a (by omega))
      have e1 : kvs_walk K kvs p m1 (f + 1) off ns
          = kvs_walk K kvs p m1 f (off + (20 + h.key_len + h.value_len + 1))
              (kvs_seq_upd ns h.seq) := by rw [kvs_walk, hacc1]
      have e2 : kvs_walk_scan K kvs p m1 key (f + 1) off st
          = kvs_walk_scan K kvs p m1 key f (off + (20 + h.key_len + h.value_len + 1))
              (kvs_scan_upd m1 key st off h) := by rw [kvs_walk_scan, hacc1]
      rw [e1, e2]
      exact ih _ _ _ (by omega) h2

/-! ## Key/value store: `fram_kvs_init` and a call over any partition content -/

/-- The walk depends on the store only through its magic. -/
theorem kvs_walk_magic (K : Kconfig) (kvs kvs1 : fram_kvs_t) (p : fram_partition_t)
    (pmem : Nat → Nat) (hm : kvs.magic = kvs1.magic) :
    ∀ (fuel off ns : Nat), kvs_walk K kvs p pmem fuel off ns = kvs_walk K kvs1 p pmem fuel off ns := by
  intro fuel
  induction fuel with
  | zero => intro off ns; rfl
  | succ f ih =>
    intro off ns
    rw [kvs_walk, kvs_walk, kvs_accept_magic K kvs kvs1 p pmem off hm]
    cases kvs_accept K kvs1 p pmem off with
    | none => rfl
    | some hdr => exact ih _ _

/-- The function `fram_kvs_init` over any content of a working partition of
at most `2^32 - 65572` bytes: it returns `ESP_OK` with the store at the stop
offset and sequence number of the walk. -/
theorem kvs_init_walk (K : Kconfig) (pm : fram_pm_t) (p : fram_partition_t)
    (pmem : Nat → Nat) (cfg : fram_kvs_config_t) (kvs : fram_kvs_t)
    (h : PmOK pm p pmem) (hfind : fram_pm_find pm cfg.partition_name = some p)
    (hb : p.size + 65572 ≤ U32) (hkm : kvs.magic = cfg.magic)
    (hvl : ∀ off, off + 21 ≤ p.size →
      (fram_kvs_header_of_bytes (mem_read pmem off 20)).value_len < 65536) :
    ∃ pm1, fram_kvs_init K pm cfg =
        (ESP_OK, { part := some p, magic := cfg.magic
                   write_offset := (kvs_walk K kvs p pmem (p.size + 1) 0 0).1
                   next_seq := (kvs_walk K kvs p pmem (p.size + 1) 0 0).2
                   ready := true, mutex := SemaphoreHandle_t.free }, pm1) ∧
      PmOK pm1 p pmem := by
  obtain ⟨pm1, h1, hok1⟩ := kvs_find_end_walk K
    { part := some p, magic := cfg.magic, write_offset := 0, next_seq := 0, ready := false
      mutex := SemaphoreHandle_t.free } p pmem rfl hb hvl (p.size + 1) 0 0 pm [] h
    (Nat.zero_le _) (by omega)
  rw [kvs_walk_magic K _ kvs p pmem hkm.symm] at h1
  refine ⟨pm1, ?_, hok1⟩
  unfold fram_kvs_init fram_kvs_find_end
  simp only [hfind, h1, ne_eq, not_true_eq_false, if_false]

/-- A successful `fram_kvs_set` or `fram_kvs_delete` over any content of a
working partition of at most `2^32 - 65572` bytes: the arguments are
acceptable, the record fits behind `write_offset` and is stored there, the
bytes outside it are unchanged, and the store has advanced behind it. -/
theorem kvs_apply_media (K : Kconfig) (kvs kvs2 : fram_kvs_t) (p : fram_partition_t)
    (pmem : Nat → Nat) (pm pm2 : fram_pm_t) (op : kvs_op)
    (hp : kvs.part = some p) (hmx : kvs.mutex = SemaphoreHandle_t.free)
    (hw : kvs.write_offset ≤ p.size) (hb : p.size + 65572 ≤ U32) (h : PmOK pm p pmem)
    (hr : fram_kvs_apply K kvs pm op = (ESP_OK, kvs2, pm2)) :
    op.valid K ∧ kvs.write_offset + op.size ≤ p.size ∧
    kvs2 = { kvs with write_offset := kvs.write_offset + op.size
                      next_seq := (kvs.next_seq + 1) % U32 } ∧
    ∃ pmem3, PmOK pm2 p pmem3 ∧ KRec pmem3 kvs.write_offset kvs.magic kvs.next_seq op ∧
      ∀ a, (a < kvs.write_offset ∨ kvs.write_offset + op.size ≤ a) → pmem3 a = pmem a := by
  have hv : op.valid K := by
    by_contra hn
    exact kvs_apply_invalid K kvs pm op hn (by rw [hr])
  rw [U32_eq] at hb
  have hsize := kvs_op_size_eq op
  have hk2 : op.key.length ≤ 15 := hv.2.1
  have hv2 : op.value.length ≤ 65535 := hv.2.2.1
  have hmod : (kvs.write_offset + op.size % U32) % U32 = kvs.write_offset + op.size := by
    rw [U32_eq, Nat.mod_eq_of_lt (show op.size < 4294967296 by omega),
      Nat.mod_eq_of_lt (by omega)]
  rw [kvs_apply_eq K kvs pm p op hp hmx hv] at hr
  unfold kvs_commit_record at hr
  rw [hmod] at hr
  by_cases hc : kvs.write_offset + op.size > p.size
  · rw [if_pos hc] at hr
    exact absurd (Prod.mk.inj hr).1 (by decide)
  rw [if_neg hc] at hr
  obtain ⟨pm1, pmem1, h1, hok1, hrec, hframe⟩ := kvs_write_record_ok kvs p pmem pm
    (kvs_header_for kvs.magic kvs.next_seq op) op.key op.value hp h rfl rfl hv.1 (by omega)
  simp only [h1, if_true] at hr
  have e1 := (Prod.mk.inj (Prod.mk.inj hr).2).1
  have e2 : pm1 = pm2 := (Prod.mk.inj (Prod.mk.inj hr).2).2
  subst e2
  refine ⟨hv, by omega, e1.symm, pmem1, hok1, ?_, fun a ha => hframe a (by omega)⟩
  unfold KRec
  rw [hsize]
  exact hrec

theorem le_bytes_lt (w n : Nat) : ∀ b ∈ le_bytes w n, b < 256 := by
  induction w generalizing n with
  | zero => intro b hb; simp [le_bytes] at hb
  | succ w ih =>
    intro b hb
    simp only [le_bytes, List.mem_cons] at hb
    rcases hb with rfl | hb
    · exact Nat.mod_lt _ (by decide)
    · exact ih _ b hb

theorem kvs_to_bytes_lt (hdr : fram_kvs_header_t) : ∀ b ∈ hdr.to_bytes, b < 256 := by
  intro b hb
  simp only [fram_kvs_header_t.to_bytes, fram_kvs_header_t.head_bytes, List.mem_append] at hb
  rcases hb with (hb | hb | hb | hb | hb | hb) | hb <;> exact le_bytes_lt _ _ b hb

/-- The bytes of a partition stay bytes when the record of a call with a key
and a value of bytes is stored. -/
theorem kvs_rec_bytes (pmem pmem3 : Nat → Nat) (psize w magic seq : Nat) (op : kvs_op)
    (hbytes : ∀ i, i < psize → pmem i < 256)
    (hkb : ∀ b ∈ op.key, b < 256) (hvb : ∀ b ∈ op.value, b < 256)
    (hrec : KRec pmem3 w magic seq op)
    (hframe : ∀ a, (a < w ∨ w + op.size ≤ a) → pmem3 a = pmem a) :
    ∀ i, i < psize → pmem3 i < 256 := by
  intro i hi
  by_cases hin : w ≤ i ∧ i < w + op.size
  · obtain ⟨j, rfl⟩ : ∃ j, i = w + j := ⟨i - w, by omega⟩
    have hj : j < op.size := by omega
    rw [← mem_read_getD pmem3 w op.size j hj, hrec]
    have hall : ∀ b ∈ (kvs_header_for magic seq op).to_bytes
        ++ (op.key ++ (op.value ++ [FRAM_KVS_COMMIT])), b < 256 := by
      intro b hb
      simp only [List.mem_append, List.mem_singleton] at hb
      rcases hb with hb | hb | hb | hb
      · exact kvs_to_bytes_lt _ b hb
      · exact hkb b hb
      · exact hvb b hb
      · rw [hb]; decide
    rw [List.getD_eq_getElem?_getD]
    cases hg : ((kvs_header_for magic seq op).to_bytes
        ++ (op.key ++ (op.value ++ [FRAM_KVS_COMMIT])))[j]? with
    | none => simp
    | some b =>
      simp only [Option.getD_some]
      exact hall b (List.getElem?_mem hg)
  · rw [hframe i (by omega)]
    exact hbytes i hi

/-- The walk of the scan depends on the store only through its magic. -/
theorem kvs_walk_scan_magic (K : Kconfig) (kvs kvs1 : fram_kvs_t) (p : fram_partition_t)
    (pmem : Nat → Nat) (key : List Nat) (hm : kvs.magic = kvs1.magic) :
    ∀ (fuel off : Nat) (st : kvs_scan_t),
      kvs_walk_scan K kvs p pmem key fuel off st = kvs_walk_scan K kvs1 p pmem key fuel off st := by
  intro fuel
  induction fuel with
  | zero => intro off st; rfl
  | succ f ih =>
    intro off st
    rw [kvs_walk_scan, kvs_walk_scan, kvs_accept_magic K kvs kvs1 p pmem off hm]
    cases kvs_accept K kvs1 p pmem off with
    | none => rfl
    | some hdr => exact ih _ _

/-- The walk stays inside the partition. -/
theorem kvs_walk_le (K : Kconfig) (kvs : fram_kvs_t) (p : fram_partition_t)
    (pmem : Nat → Nat) :
    ∀ (fuel off ns : Nat), off ≤ p.size → (kvs_walk K kvs p pmem fuel off ns).1 ≤ p.size := by
  intro fuel
  induction fuel with
  | zero => intro off ns h; exact h
  | succ f ih =>
    intro off ns h
    rw [kvs_walk]
    cases hacc : kvs_accept K kvs p pmem off with
    | none => exact h
    | some hdr =>
      obtain ⟨_, _, _, a4, _, _⟩ := kvs_accept_some K kvs p pmem off hdr hacc
      exact ih _ _ a4

/-- The header read anywhere in a partition of bytes has a 16-bit
`value_len`. -/
theorem kvs_bytes_value_len (p : fram_partition_t) (pmem : Nat → Nat)
    (hbytes : ∀ i, i < p.size → pmem i < 256) :
    ∀ off, off + 21 ≤ p.size →
      (fram_kvs_header_of_bytes (mem_read pmem off 20)).value_len < 65536 := by
  intro off hoff
  obtain ⟨_, r2⟩ := kvs_read_lens pmem off
  have h10 := hbytes (off + 10) (by omega)
  have h11 := hbytes (off + 11) (by omega)
  rw [r2]
  omega

/-! ## Key/value store: a set on recovered media -/

/-- An offset where no record is accepted stays one when the bytes from that
offset on are the same. -/
theorem kvs_accept_none_frame (K : Kconfig) (kvs : fram_kvs_t) (p : fram_partition_t)
    (m m1 : Nat → Nat) (off : Nat) (hacc : kvs_accept K kvs p m off = none)
    (hsame : ∀ a, off ≤ a → m1 a = m a) : kvs_accept K kvs p m1 off = none := by
  cases h : kvs_accept K kvs p m1 off with
  | none => rfl
  | some hdr =>
    have h2 := kvs_accept_frame K kvs p m1 m off hdr h (fun a h1 _ => (hsame a h1).symm)
    rw [hacc] at h2
    exact Option.noConfusion h2

/-- A successful `fram_kvs_set` on the store that `fram_kvs_init` found on any
content of a working partition of at most `2^32 - 65572` bytes, when the scans
accept no record at the offset where the new record ends: `fram_kvs_get` of
the key returns the value, and `fram_kvs_init` on the resulting media returns
the store object in memory. -/
theorem kvs_set_get_behind (K : Kconfig) (pm pm1 pm2 : fram_pm_t)
    (p : fram_partition_t) (pmem : Nat → Nat) (cfg : fram_kvs_config_t)
    (kvs1 kvs2 : fram_kvs_t) (k v buf : List Nat) (cap : Nat)
    (hmagic : cfg.magic < U32) (h : PmOK pm p pmem)
    (hfind : fram_pm_find pm cfg.partition_name = some p)
    (hsize : p.size + 65572 ≤ U32)
    (hbytes : ∀ i, i < p.size → pmem i < 256)
    (hkb : ∀ b ∈ k, b < 256) (hvb : ∀ b ∈ v, b < 256)
    (hinit : fram_kvs_init K pm cfg = (ESP_OK, kvs1, pm1))
    (hbehind : kvs_accept K kvs1 p pmem
      (kvs1.write_offset + (20 + k.length + v.length + 1)) = none)
    (hset : fram_kvs_set K kvs1 pm1 k v = (ESP_OK, kvs2, pm2))
    (hcap : v.length ≤ cap) :
    (∃ pm3, fram_kvs_get K kvs2 pm2 k buf cap
      = (ESP_OK, v ++ buf.drop v.length, v.length, pm3)) ∧
    (∃ pm4, fram_kvs_init K pm2 cfg = (ESP_OK, kvs2, pm4)) := by
  have hvl := kvs_bytes_value_len p pmem hbytes
  obtain ⟨kvsC, hC⟩ : ∃ kvsC : fram_kvs_t, kvsC =
    { part := some p, magic := cfg.magic, write_offset := 0, next_seq := 0, ready := false
      mutex := SemaphoreHandle_t.free } := ⟨_, rfl⟩
  have hCm : kvsC.magic = cfg.magic := by rw [hC]
  obtain ⟨pmI, hI, hokI⟩ := kvs_init_walk K pm p pmem cfg kvsC h hfind hsize hCm hvl
  obtain ⟨W, hW⟩ : ∃ W, W = kvs_walk K kvsC p pmem (p.size + 1) 0 0 := ⟨_, rfl⟩
  rw [← hW] at hI
  have hWle : W.1 ≤ p.size := by
    rw [hW]; exact kvs_walk_le K kvsC p pmem _ _ _ (Nat.zero_le _)
  have hWlt : W.2 < U32 := by
    rw [hW]; exact kvs_walk_seq_lt K kvsC p pmem _ _ _ (by decide)
  rw [hI] at hinit
  have e1 := (Prod.mk.inj (Prod.mk.inj hinit).2).1
  have e2 : pmI = pm1 := (Prod.mk.inj (Prod.mk.inj hinit).2).2
  subst e1 e2
  simp only at hbehind
  -- the call
  obtain ⟨hv, hfit, hk2, pmem3, hok2, hrec, hframe⟩ := kvs_apply_media K _ kvs2 p pmem pmI pm2
    (kvs_op.set k v) rfl rfl hWle hsize hokI hset
  simp only at hfit hrec hframe
  have hsz : (kvs_op.set k v).size = 20 + k.length + v.length + 1 := rfl
  have hbytes3 := kvs_rec_bytes pmem pmem3 p.size W.1 cfg.magic W.2 (kvs_op.set k v) hbytes
    hkb hvb hrec hframe
  have hvl3 := kvs_bytes_value_len p pmem3 hbytes3
  have hnew : kvs_accept K kvsC p pmem3 W.1 = some (kvs_header_for cfg.magic W.2
      (kvs_op.set k v)) := by
    have := kvs_accept_rec K kvsC p pmem3 W.1 W.2 (kvs_op.set k v) (by rw [hCm]; exact hmagic)
      hWlt hv hfit (by rw [hCm]; exact hrec)
    rw [hCm] at this
    exact this
  have hend : kvs_accept K kvsC p pmem3 (W.1 + (20 + (kvs_header_for cfg.magic W.2
      (kvs_op.set k v)).key_len + (kvs_header_for cfg.magic W.2 (kvs_op.set k v)).value_len + 1))
      = none := by
    have hb2 : kvs_accept K kvsC p pmem (W.1 + (20 + k.length + v.length + 1)) = none := by
      rw [← hbehind]
      exact kvs_accept_magic K _ _ p pmem _ hCm
    exact kvs_accept_none_frame K kvsC p pmem pmem3 _ hb2
      (fun a ha => hframe a (Or.inr (by rw [hsz]; exact ha)))
  obtain ⟨hwalk, st1, hscan⟩ := kvs_walk_extend K kvsC p pmem pmem3 k W.1 _
    (fun a ha => hframe a (Or.inl ha)) hnew hend (p.size + 1) 0 0
    { found := false, deleted := false, last_hdr := kvs_header_zero, last_offset := 0 }
    (by omega) (by rw [← hW])
  rw [← hW] at hwalk
  have hs1 := fram_kvs_init_same K pm cfg
  rw [hI] at hs1
  have hs2 : PmSame pmI pm2 := by
    have := fram_kvs_apply_same K
      { part := some p, magic := cfg.magic, write_offset := W.1, next_seq := W.2, ready := true
        mutex := SemaphoreHandle_t.free } pmI (kvs_op.set k v)
    rw [fram_kvs_apply_set, hset] at this
    exact this
  have hfind2 : fram_pm_find pm2 cfg.partition_name = some p := by
    rw [fram_pm_find_same _ _ _ (PmSame.trans_same _ _ _ hs1 hs2)]
    exact hfind
  have hm2 : kvs2.magic = kvsC.magic := by rw [hk2, hCm]
  have hp2 : kvs2.part = some p := by rw [hk2]
  have hmx2 : kvs2.mutex = SemaphoreHandle_t.free := by rw [hk2]
  constructor
  · obtain ⟨pmS, hloop, hokS⟩ := kvs_scan_walk K kvs2 p pmem3 k hp2 hsize hvl3 (p.size + 1) 0
      { found := false, deleted := false, last_hdr := kvs_header_zero, last_offset := 0 }
      pm2 [] hok2 (Nat.zero_le _) (by omega)
    rw [kvs_walk_scan_magic K kvs2 kvsC p pmem3 k hm2, hscan] at hloop
    unfold KRec at hrec
    rw [hsz] at hrec
    obtain ⟨i1, i2, i3, i4⟩ := kvs_image_parts pmem3 W.1 _ k v FRAM_KVS_COMMIT
      (kvs_to_bytes_length _) hrec
    have hupd : kvs_scan_upd pmem3 k st1 W.1 (kvs_header_for cfg.magic W.2 (kvs_op.set k v))
        = { found := true, deleted := false
            last_hdr := kvs_header_for cfg.magic W.2 (kvs_op.set k v), last_offset := W.1 } := by
      unfold kvs_scan_upd
      have hkl : (kvs_header_for cfg.magic W.2 (kvs_op.set k v)).key_len = k.length := rfl
      have hfl : (kvs_header_for cfg.magic W.2 (kvs_op.set k v)).flags = 0 := rfl
      rw [if_pos ⟨hkl, by rw [hkl]; exact i2⟩, hfl]
      rfl
    rw [hupd] at hloop
    have hsees : ScanSees p pmem3 k
        { found := true, deleted := false
          last_hdr := kvs_header_for cfg.magic W.2 (kvs_op.set k v), last_offset := W.1 }
        (some v) := ⟨rfl, rfl, rfl, rfl, i3, by
          show W.1 + 20 + k.length + v.length < p.size
          rw [hsz] at hfit
          omega⟩
    obtain ⟨_, g2⟩ := kvs_get_sees K kvs2 p pmem3 pm2 pmS k buf cap _ (some v) hp2 hmx2 hv.1
      hv.2.1 hloop hokS hsees
    obtain ⟨pm3, g3, _⟩ := g2 v rfl hcap
    exact ⟨pm3, g3⟩
  · obtain ⟨pm4, hI2, _⟩ := kvs_init_walk K pm2 p pmem3 cfg kvsC hok2 hfind2 hsize hCm hvl3
    rw [hwalk] at hI2
    refine ⟨pm4, ?_⟩
    rw [hI2, hk2]
    have hupd : kvs_seq_upd W.2 (kvs_header_for cfg.magic W.2 (kvs_op.set k v)).seq
        = (W.2 + 1) % U32 := by
      have hseq : (kvs_header_for cfg.magic W.2 (kvs_op.set k v)).seq = W.2 := rfl
      unfold kvs_seq_upd
      rw [hseq, if_pos (Nat.le_refl _)]
    rw [hupd]
    rfl

/-! ## Key/value store: helpers for the examples of recovered media -/

/-- The bytes of a committed record of a call with a key and a value of bytes
are bytes. -/
theorem krec_bytes (pmem : Nat → Nat) (w magic seq : Nat) (op : kvs_op)
    (hkb : ∀ b ∈ op.key, b < 256) (hvb : ∀ b ∈ op.value, b < 256)
    (hrec : KRec pmem w magic seq op) :
    ∀ j, j < op.size → pmem (w + j) < 256 := by
  intro j hj
  rw [← mem_read_getD pmem w op.size j hj, hrec]
  have hall : ∀ b ∈ (kvs_header_for magic seq op).to_bytes
      ++ (op.key ++ (op.value ++ [FRAM_KVS_COMMIT])), b < 256 := by
    intro b hb
    simp only [List.mem_append, List.mem_singleton] at hb
    rcases hb with hb | hb | hb | hb
    · exact kvs_to_bytes_lt _ b hb
    · exact hkb b hb
    · exact hvb b hb
    · rw [hb]; decide
  rw [List.getD_eq_getElem?_getD]
  cases hg : ((kvs_header_for magic seq op).to_bytes
      ++ (op.key ++ (op.value ++ [FRAM_KVS_COMMIT])))[j]? with
  | none => simp
  | some b =>
    simp only [Option.getD_some]
    exact hall b (List.getElem?_mem hg)

/-- The bytes of a numbered log of calls with keys and values of bytes are
bytes. -/
theorem klogseq_bytes (pmem : Nat → Nat) (magic : Nat) :
    ∀ (ops : List kvs_op) (off seq : Nat), KLogSeq pmem magic off seq ops →
      (∀ op ∈ ops, (∀ b ∈ op.key, b < 256) ∧ ∀ b ∈ op.value, b < 256) →
      ∀ i, off ≤ i → i < off + kvs_log_size ops → pmem i < 256 := by
  intro ops
  induction ops with
  | nil =>
    intro off seq _ _ i h1 h2
    rw [kvs_log_size_nil] at h2
    omega
  | cons op rest ih =>
    intro off seq hlog hb i h1 h2
    rw [kvs_log_size_cons] at h2
    obtain ⟨hrec, hrest⟩ := hlog
    obtain ⟨hkb, hvb⟩ := hb op (List.mem_cons_self _ _)
    by_cases hin : i < off + op.size
    · obtain ⟨j, rfl⟩ : ∃ j, i = off + j := ⟨i - off, by omega⟩
      exact krec_bytes pmem off magic seq op hkb hvb hrec j (by omega)
    · exact ih (off + op.size) (seq + 1) hrest (fun o ho => hb o (List.mem_cons_of_mem _ ho))
        i (by omega) (by omega)

/-- A `fram_kvs_set` or `fram_kvs_delete` with acceptable arguments whose
record fits behind `write_offset`, over any content of a working partition:
it returns `ESP_OK`, stores the record and advances the store. -/
theorem kvs_apply_media_ok (K : Kconfig) (kvs : fram_kvs_t) (p : fram_partition_t)
    (pmem : Nat → Nat) (pm : fram_pm_t) (op : kvs_op)
    (hp : kvs.part = some p) (hmx : kvs.mutex = SemaphoreHandle_t.free)
    (h : PmOK pm p pmem) (hv : op.valid K) (hfit : kvs.write_offset + op.size ≤ p.size) :
    ∃ pm2 pmem3, fram_kvs_apply K kvs pm op =
        (ESP_OK, { kvs with write_offset := kvs.write_offset + op.size
                            next_seq := (kvs.next_seq + 1) % U32 }, pm2) ∧
      PmOK pm2 p pmem3 ∧ KRec pmem3 kvs.write_offset kvs.magic kvs.next_seq op ∧
      ∀ a, (a < kvs.write_offset ∨ kvs.write_offset + op.size ≤ a) → pmem3 a = pmem a := by
  have hsz := pm_size_lt pm p pmem h
  rw [U32_eq] at hsz
  have hsize := kvs_op_size_eq op
  have hmod : (kvs.write_offset + op.size % U32) % U32 = kvs.write_offset + op.size := by
    rw [U32_eq, Nat.mod_eq_of_lt (show op.size < 4294967296 by omega),
      Nat.mod_eq_of_lt (by omega)]
  obtain ⟨pm1, pmem1, h1, hok1, hrec, hframe⟩ := kvs_write_record_ok kvs p pmem pm
    (kvs_header_for kvs.magic kvs.next_seq op) op.key op.value hp h rfl rfl hv.1 (by omega)
  refine ⟨pm1, pmem1, ?_, hok1, ?_, fun a ha => hframe a (by omega)⟩
  · rw [kvs_apply_eq K kvs pm p op hp hmx hv]
    unfold kvs_commit_record
    rw [hmod, if_neg (by omega)]
    simp only [h1, if_true]
  · unfold KRec
    rw [hsize]
    exact hrec

/-- No record is accepted at a record whose stored checksum was overwritten by
another value. -/
theorem kvs_accept_bad_crc (K : Kconfig) (kvs : fram_kvs_t) (p : fram_partition_t)
    (pmem : Nat → Nat) (off seq c : Nat) (op : kvs_op)
    (hm : kvs.magic < U32) (hs : seq < U32) (hc : c < U32) (hv : op.valid K)
    (hne : c ≠ (kvs_header_for kvs.magic seq op).crc32)
    (himg : mem_read pmem off op.size
      = ({ kvs_header_for kvs.magic seq op with crc32 := c } : fram_kvs_header_t).to_bytes
          ++ (op.key ++ (op.value ++ [FRAM_KVS_COMMIT]))) :
    kvs_accept K kvs p pmem off = none ∧
    (fram_kvs_header_of_bytes (mem_read pmem off 20)).value_len = op.value.length := by
  rw [kvs_op_size_eq] at himg
  obtain ⟨i1, i2, i3, _⟩ := kvs_image_parts pmem off _ op.key op.value FRAM_KVS_COMMIT
    (kvs_to_bytes_length _) himg
  have hrt := kvs_header_for_roundtrip K kvs.magic seq op c hm hs hv hc
  rw [← i1] at hrt
  refine ⟨?_, by rw [hrt]; rfl⟩
  cases hacc : kvs_accept K kvs p pmem off with
  | none => rfl
  | some h =>
    exfalso
    obtain ⟨e, _, _, _, _, e6⟩ := kvs_accept_some K kvs p pmem off h hacc
    rw [hrt] at e
    subst e
    have e6' : fram_crc32_le (fram_crc32_le (fram_crc32_le 0
        (kvs_header_for kvs.magic seq op).head_bytes) (mem_read pmem (off + 20) op.key.length))
        (mem_read pmem (off + 20 + op.key.length) op.value.length) = c := e6
    rw [i2, i3, ← kvs_header_for_crc] at e6'
    exact hne e6'.symm

/-- The example run on the erased `"kvs"` partition: the numbered log it
leaves and the partition table it keeps. -/
theorem example_kvs_run_exact (ops : List kvs_op)
    (hvalid : ∀ op, op ∈ ops → op.valid example_K)
    (hfit : kvs_log_size ops ≤ example_kvs_part.size) :
    ∃ pmem2, PmOK (example_kvs_run example_pm ops).2.2 example_kvs_part pmem2 ∧
      KvsExact example_K (example_kvs_run example_pm ops).2.1 example_kvs_part pmem2 ops ∧
      (example_kvs_run example_pm ops).2.1.magic = example_kvs_cfg.magic ∧
      fram_pm_find (example_kvs_run example_pm ops).2.2 example_kvs_cfg.partition_name
        = some example_kvs_part := by
  obtain ⟨hinit, hrun, _⟩ := example_kvs_run_ok example_pm example_kvs_part ops
    example_pm_kvs_ok example_kvs_find hvalid hfit
  have hrun2 : fram_kvs_apply_all example_K
      (fram_kvs_init example_K example_pm example_kvs_cfg).2.1
      (fram_kvs_init example_K example_pm example_kvs_cfg).2.2 ops
      = (ESP_OK, (example_kvs_run example_pm ops).2.1, (example_kvs_run example_pm ops).2.2) :=
    hrun
  obtain ⟨pmem2, h2, he2, hm2⟩ := kvs_run_exact example_K example_pm _ _ example_kvs_part
    (fun _ => 0xFF) example_kvs_cfg _ _ ops (by decide) example_pm_kvs_ok example_kvs_find
    (fun _ _ => rfl) hinit hrun2
  have hs1 := fram_kvs_init_same example_K example_pm example_kvs_cfg
  have hs2 : PmSame (fram_kvs_init example_K example_pm example_kvs_cfg).2.2
      (example_kvs_run example_pm ops).2.2 := fram_kvs_apply_all_same example_K ops _ _
  refine ⟨pmem2, h2, he2, hm2, ?_⟩
  rw [fram_pm_find_same _ _ _ (PmSame.trans_same _ _ _ hs1 hs2)]
  exact example_kvs_find

theorem example_kvs_ops_valid (op : kvs_op) (ho : op ∈ example_kvs_ops) :
    op.valid example_K := by
  have h : op = kvs_op.set [0x61] [0x6F, 0x6E, 0x65] ∨ op = kvs_op.set [0x62] [0x74, 0x77, 0x6F] := by
    simpa [example_kvs_ops] using ho
  rcases h with h | h <;> subst h <;>
    exact ⟨by decide, by decide, by decide, by decide⟩

theorem example_stale_ops_valid (op : kvs_op) (ho : op ∈ example_stale_ops) :
    op.valid example_K := by
  have h : op = kvs_op.set [0x61] [0x6F, 0x6E, 0x65] ∨ op = kvs_op.set [0x62] [0x74, 0x77, 0x6F]
      ∨ op = kvs_op.set [0x62] [0x6F, 0x6C, 0x64] := by
    simpa [example_stale_ops] using ho
  rcases h with h | h | h <;> subst h <;>
    exact ⟨by decide, by decide, by decide, by decide⟩

/-- A committed record that lies outside an area where the media changed. -/
theorem krec_congr (pmem pmem1 : Nat → Nat) (off magic seq : Nat) (op : kvs_op)
    (hsame : ∀ a, off ≤ a → a < off + op.size → pmem1 a = pmem a)
    (hrec : KRec pmem off magic seq op) : KRec pmem1 off magic seq op := by
  unfold KRec at hrec ⊢
  rw [← hrec]
  exact mem_read_congr _ _ _ _ (fun i hi => hsame (off + i) (by omega) (by omega))

/-- A stale record behind a corrupted one: after `set("a", "one", 3)`,
`set("b", "two", 3)`, `set("b", "old", 3)` on the erased `"kvs"` partition of
the tests, the stored checksum of the second record is complemented on the
media. `fram_kvs_init` on this content returns `ESP_OK` with
`write_offset = 25`, behind the first record. The call `set("b", "new", 3)`
returns `ESP_OK` and writes its record over the second one, with
`write_offset = 50` afterwards. The third record, still intact behind it, is
found by the scans: `fram_kvs_get("b")` returns `"old"`, and `fram_kvs_init`
again ends at 75. -/
theorem example_stale_facts :
    (example_kvs_recover example_stale_pm).1 = ESP_OK ∧
    (example_kvs_recover example_stale_pm).2.1.write_offset = 25 ∧
    (example_kvs_set_new example_stale_pm).1 = ESP_OK ∧
    (example_kvs_set_new example_stale_pm).2.1.write_offset = 50 ∧
    (∃ pm3, fram_kvs_get example_K (example_kvs_set_new example_stale_pm).2.1
        (example_kvs_set_new example_stale_pm).2.2 [0x62] [0, 0, 0, 0, 0, 0, 0, 0] 8
      = (ESP_OK, [0x6F, 0x6C, 0x64, 0, 0, 0, 0, 0], 3, pm3)) ∧
    (fram_kvs_init example_K (example_kvs_set_new example_stale_pm).2.2 example_kvs_cfg).1
      = ESP_OK ∧
    (fram_kvs_init example_K (example_kvs_set_new example_stale_pm).2.2
      example_kvs_cfg).2.1.write_offset = 75 := by
  obtain ⟨pmem2, h2, he2, hm2, hfind2⟩ := example_kvs_run_exact example_stale_ops
    example_stale_ops_valid (by decide)
  have ha2 := he2.after
  have hmlt : example_kvs_cfg.magic < U32 := by decide
  obtain ⟨hrecA, hrecB, hrecC, _⟩ :
      KRec pmem2 0 (example_kvs_run example_pm example_stale_ops).2.1.magic 0
        (kvs_op.set [0x61] [0x6F, 0x6E, 0x65]) ∧
      KRec pmem2 25 (example_kvs_run example_pm example_stale_ops).2.1.magic 1
        (kvs_op.set [0x62] [0x74, 0x77, 0x6F]) ∧
      KRec pmem2 50 (example_kvs_run example_pm example_stale_ops).2.1.magic 2
        (kvs_op.set [0x62] [0x6F, 0x6C, 0x64]) ∧ True := he2.log
  rw [hm2] at hrecA hrecB hrecC
  have herased : ∀ j, 75 ≤ j → j < example_kvs_part.size → pmem2 j = 0xFF := ha2.erased
  -- the corrupted checksum
  have hstored : example_stale_stored_crc
      = (kvs_header_for example_kvs_cfg.magic 1 (kvs_op.set [0x62] [0x74, 0x77, 0x6F])).crc32 := by
    unfold example_stale_stored_crc
    rw [pm_raw_read _ example_kvs_part pmem2 (25 + 16) 4 h2 (by decide)]
    exact kvs_rec_crc_field pmem2 25 _ 1 _ hrecB
  have hslt : example_stale_stored_crc < U32 := by
    rw [hstored, kvs_header_for_crc]
    exact fram_crc32_le_lt _ _
  have hclt := xor_ones_lt example_stale_stored_crc hslt
  have hcne : example_stale_stored_crc ^^^ 4294967295
      ≠ (kvs_header_for example_kvs_cfg.magic 1 (kvs_op.set [0x62] [0x74, 0x77, 0x6F])).crc32 := by
    rw [← hstored]
    exact xor_ones_ne _
  have hP : PmOK example_stale_pm example_kvs_part
      (mem_write pmem2 (25 + 16) (le_bytes 4 (example_stale_stored_crc ^^^ 4294967295))) :=
    kvs_poke_crc_ok _ example_kvs_part pmem2 25 _ h2 (by decide)
  have hl4 : (le_bytes 4 (example_stale_stored_crc ^^^ 4294967295)).length = 4 :=
    le_bytes_length _ _
  have hPout : ∀ a, (a < 41 ∨ 45 ≤ a) →
      mem_write pmem2 (25 + 16) (le_bytes 4 (example_stale_stored_crc ^^^ 4294967295)) a
        = pmem2 a := by
    intro a ha
    exact mem_write_outside _ _ _ _ (by rw [hl4]; omega)
  have hfindP : fram_pm_find example_stale_pm example_kvs_cfg.partition_name
      = some example_kvs_part := by
    rw [fram_pm_find_same (example_kvs_run example_pm example_stale_ops).2.2 example_stale_pm _
      ⟨rfl, rfl⟩]
    exact hfind2
  -- `fram_kvs_init` on the corrupted content
  have hrecA1 : KRec (mem_write pmem2 (25 + 16)
      (le_bytes 4 (example_stale_stored_crc ^^^ 4294967295))) 0 example_kvs_cfg.magic 0
      (kvs_op.set [0x61] [0x6F, 0x6E, 0x65]) :=
    krec_congr pmem2 _ 0 _ 0 _ (fun a _ ha => hPout a (Or.inl (by
      have : (kvs_op.set [0x61] [0x6F, 0x6E, 0x65]).size = 25 := rfl
      omega))) hrecA
  obtain ⟨hacc, hvl⟩ := kvs_accept_bad_crc example_K
    (example_kvs_run example_pm example_stale_ops).2.1 example_kvs_part
    (mem_write pmem2 (25 + 16) (le_bytes 4 (example_stale_stored_crc ^^^ 4294967295)))
    25 1 (example_stale_stored_crc ^^^ 4294967295) (kvs_op.set [0x62] [0x74, 0x77, 0x6F])
    ha2.magic_lt (by decide) hclt ⟨by decide, by decide, by decide, by decide⟩
    (by rw [hm2]; exact hcne)
    (by rw [hm2]; exact kvs_poked_image pmem2 25 _ 1 _ _ hrecB)
  obtain ⟨pmI, hI, hokI⟩ := kvs_init_of_log example_K example_stale_pm example_kvs_part _
    example_kvs_cfg [kvs_op.set [0x61] [0x6F, 0x6E, 0x65]]
    (example_kvs_run example_pm example_stale_ops).2.1 hmlt hP hfindP (by decide)
    ⟨hrecA1, trivial⟩ (fun op ho => by
      rw [List.mem_singleton.mp ho]
      exact ⟨by decide, by decide, by decide, by decide⟩) (by decide) hm2 hacc
    (fun _ => by
      have e : kvs_log_size [kvs_op.set [0x61] [0x6F, 0x6E, 0x65]] = 25 := rfl
      rw [e, hvl]
      decide)
  have hI2 : example_kvs_recover example_stale_pm
      = (ESP_OK, { part := some example_kvs_part, magic := example_kvs_cfg.magic
                   write_offset := 25, next_seq := 1, ready := true
                   mutex := SemaphoreHandle_t.free }, pmI) := hI
  -- the call `set("b", "new", 3)`
  obtain ⟨pm2, pmem3, hS0, hok2, hrecN, hframe⟩ := kvs_apply_media_ok example_K
    { part := some example_kvs_part, magic := example_kvs_cfg.magic
      write_offset := 25, next_seq := 1, ready := true, mutex := SemaphoreHandle_t.free }
    example_kvs_part _ pmI (kvs_op.set [0x62] [0x6E, 0x65, 0x77]) rfl rfl hokI
    ⟨by decide, by decide, by decide, by decide⟩ (by decide)
  have hS2 : example_kvs_set_new example_stale_pm
      = (ESP_OK, { part := some example_kvs_part, magic := example_kvs_cfg.magic
                   write_offset := 50, next_seq := 2, ready := true
                   mutex := SemaphoreHandle_t.free }, pm2) := by
    unfold example_kvs_set_new
    rw [hI2]
    exact hS0
  have hframe2 : ∀ a, (a < 25 ∨ 50 ≤ a) → pmem3 a
      = mem_write pmem2 (25 + 16) (le_bytes 4 (example_stale_stored_crc ^^^ 4294967295)) a :=
    hframe
  -- the log on the media after the call
  have hlog3 : KLogSeq pmem3 example_kvs_cfg.magic 0 0
      [kvs_op.set [0x61] [0x6F, 0x6E, 0x65], kvs_op.set [0x62] [0x6E, 0x65, 0x77],
        kvs_op.set [0x62] [0x6F, 0x6C, 0x64]] := by
    refine ⟨?_, ?_, ?_, trivial⟩
    · exact krec_congr _ pmem3 0 _ 0 _ (fun a _ ha => hframe2 a (Or.inl (by
        have : (kvs_op.set [0x61] [0x6F, 0x6E, 0x65]).size = 25 := rfl
        omega))) hrecA1
    · exact hrecN
    · exact krec_congr pmem2 pmem3 50 _ 2 _ (fun a ha1 _ => by
        rw [hframe2 a (Or.inr ha1), hPout a (Or.inr (by omega))]) hrecC
  have hvalid3 : ∀ op, op ∈ [kvs_op.set [0x61] [0x6F, 0x6E, 0x65],
      kvs_op.set [0x62] [0x6E, 0x65, 0x77], kvs_op.set [0x62] [0x6F, 0x6C, 0x64]] →
      op.valid example_K := by
    intro op ho
    have h : op = kvs_op.set [0x61] [0x6F, 0x6E, 0x65] ∨ op = kvs_op.set [0x62] [0x6E, 0x65, 0x77]
        ∨ op = kvs_op.set [0x62] [0x6F, 0x6C, 0x64] := by
      simpa using ho
    rcases h with h | h | h <;> subst h <;>
      exact ⟨by decide, by decide, by decide, by decide⟩
  have herased3 : ∀ j, 75 ≤ j → j < example_kvs_part.size → pmem3 j = 0xFF := by
    intro j h1 h3
    rw [hframe2 j (Or.inr (by omega)), hPout j (Or.inr (by omega))]
    exact herased j h1 h3
  have hs1 := fram_kvs_init_same example_K example_stale_pm example_kvs_cfg
  have hs1' : PmSame example_stale_pm pmI := by
    have e : fram_kvs_init example_K example_stale_pm example_kvs_cfg = _ := hI
    rw [e] at hs1
    exact hs1
  have hs2 := fram_kvs_apply_same example_K
    { part := some example_kvs_part, magic := example_kvs_cfg.magic
      write_offset := 25, next_seq := 1, ready := true, mutex := SemaphoreHandle_t.free }
    pmI (kvs_op.set [0x62] [0x6E, 0x65, 0x77])
  rw [hS0] at hs2
  have hfind3 : fram_pm_find pm2 example_kvs_cfg.partition_name = some example_kvs_part := by
    rw [fram_pm_find_same _ _ _ (PmSame.trans_same _ _ _ hs1' hs2)]
    exact hfindP
  -- `fram_kvs_get` and `fram_kvs_init` on it
  obtain ⟨pm3, g3⟩ := kvs_get_of_log example_K
    { part := some example_kvs_part, magic := example_kvs_cfg.magic
      write_offset := 50, next_seq := 2, ready := true, mutex := SemaphoreHandle_t.free }
    example_kvs_part pmem3 pm2 _ [0x62] [0, 0, 0, 0, 0, 0, 0, 0] 8 rfl hmlt rfl hok2
    (klogseq_log pmem3 _ _ 0 0 (by decide) hlog3) hvalid3 (by decide)
    (kvs_stop_erased example_K _ example_kvs_part pmem3 _ rfl (by decide) herased3)
    (by decide) (by decide)
  have hspec : kvs_get_spec (kvs_map_spec
      [kvs_op.set [0x61] [0x6F, 0x6E, 0x65], kvs_op.set [0x62] [0x6E, 0x65, 0x77],
        kvs_op.set [0x62] [0x6F, 0x6C, 0x64]] [0x62]) [0, 0, 0, 0, 0, 0, 0, 0] 8
      = (ESP_OK, [0x6F, 0x6C, 0x64, 0, 0, 0, 0, 0], 3) := by decide
  rw [hspec] at g3
  obtain ⟨pm4, hI4, _⟩ := kvs_init_of_log example_K pm2 example_kvs_part pmem3
    example_kvs_cfg _ (example_kvs_run example_pm example_stale_ops).2.1 hmlt hok2 hfind3
    (by decide) hlog3 hvalid3 (by decide) hm2
    (kvs_accept_erased example_K _ example_kvs_part pmem3 _ herased3)
    (fun _ => kvs_erased_value_len pmem3 _ (fun i hi => herased3 _ (by
      show 75 ≤ 75 + i
      omega) (by
      have : example_kvs_part.size = 4096 := rfl
      have e : kvs_log_size [kvs_op.set [0x61] [0x6F, 0x6E, 0x65],
        kvs_op.set [0x62] [0x6E, 0x65, 0x77], kvs_op.set [0x62] [0x6F, 0x6C, 0x64]] = 75 := rfl
      omega)))
  rw [hS2]
  refine ⟨by rw [hI2], by rw [hI2], rfl, rfl, ⟨pm3, g3⟩, ?_, ?_⟩
  · show (fram_kvs_init example_K pm2 example_kvs_cfg).1 = ESP_OK
    rw [hI4]
  · show (fram_kvs_init example_K pm2 example_kvs_cfg).2.1.write_offset = 75
    rw [hI4]
    rfl

/-! ## CRC32: a changed byte changes the checksum -/

set_option maxRecDepth 100000 in
theorem xor_255_eq : ∀ b, b < 256 → b ^^^ 255 = 255 - b := by decide

theorem xor_255_mod (b : Nat) : (b ^^^ 255) % 256 ≠ b % 256 := by
  intro h
  have h2 : (b ^^^ 255) % 2 = b % 2 := by omega
  have h3 := Nat.testBit_xor b 255 0
  simp only [Nat.testBit_zero, h2] at h3
  cases hb : decide (b % 2 = 1) <;> rw [hb] at h3 <;> simp at h3

theorem xor_255_ne (b : Nat) : b ^^^ 255 ≠ b := by
  intro h
  have := xor_255_mod b
  rw [h] at this
  exact this rfl

theorem xor_255_lt (b : Nat) (h : b < 256) : b ^^^ 255 < 256 := by
  rw [xor_255_eq b h]
  omega

/-- The bit step of the CRC is injective on 32-bit values. -/
theorem crc32_bit_inj (a b : Nat) (ha : a < U32) (hb : b < U32)
    (h : crc32_bit a = crc32_bit b) : a = b := by
  rw [U32_eq] at ha hb
  have hhigh : ∀ x, x < 2147483648 → 2147483648 ≤ x ^^^ 0xEDB88320 := by
    intro x hx
    have h1 : x.testBit 31 = false := Nat.testBit_lt_two_pow (by norm_num; exact hx)
    have h2 : (0xEDB88320 : Nat).testBit 31 = true := by decide
    have h3 : (x ^^^ 0xEDB88320).testBit 31 = true := by
      rw [Nat.testBit_xor, h1, h2]
      rfl
    have := Nat.testBit_implies_ge h3
    norm_num at this
    exact this
  unfold crc32_bit at h
  by_cases pa : a % 2 = 1 <;> by_cases pb : b % 2 = 1
  · rw [if_pos pa, if_pos pb] at h
    have := Nat.xor_left_inj.mp h
    omega
  · rw [if_pos pa, if_neg pb] at h
    have := hhigh (a / 2) (by omega)
    omega
  · rw [if_neg pa, if_pos pb] at h
    have := hhigh (b / 2) (by omega)
    omega
  · rw [if_neg pa, if_neg pb] at h
    omega

/-- Eight bit steps are injective on 32-bit values. -/
theorem crc32_bit8_inj (a b : Nat) (ha : a < U32) (hb : b < U32)
    (h : crc32_bit (crc32_bit (crc32_bit (crc32_bit (crc32_bit (crc32_bit (crc32_bit
      (crc32_bit a))))))) = crc32_bit (crc32_bit (crc32_bit (crc32_bit (crc32_bit (crc32_bit
      (crc32_bit (crc32_bit b)))))))) : a = b := by
  have l := crc32_bit_lt
  have i := crc32_bit_inj
  exact i _ _ ha hb (i _ _ (l _ ha) (l _ hb) (i _ _ (l _ (l _ ha)) (l _ (l _ hb))
    (i _ _ (l _ (l _ (l _ ha))) (l _ (l _ (l _ hb)))
    (i _ _ (l _ (l _ (l _ (l _ ha)))) (l _ (l _ (l _ (l _ hb))))
    (i _ _ (l _ (l _ (l _ (l _ (l _ ha))))) (l _ (l _ (l _ (l _ (l _ hb)))))
    (i _ _ (l _ (l _ (l _ (l _ (l _ (l _ ha)))))) (l _ (l _ (l _ (l _ (l _ (l _ hb))))))
    (i _ _ (l _ (l _ (l _ (l _ (l _ (l _ (l _ ha))))))) (l _ (l _ (l _ (l _ (l _ (l _ (l _ hb)))))))
      h)))))))

theorem crc32_xor_lt (c b : Nat) (h : c < U32) : c ^^^ (b % 256) < U32 := by
  have hb : b % 256 < 2 ^ 32 := by omega
  exact Nat.xor_lt_two_pow h hb

/-- The byte step of the CRC is injective in the state. -/
theorem crc32_byte_inj_state (c1 c2 b : Nat) (h1 : c1 < U32) (h2 : c2 < U32)
    (h : crc32_byte c1 b = crc32_byte c2 b) : c1 = c2 := by
  unfold crc32_byte at h
  exact Nat.xor_left_inj.mp (crc32_bit8_inj _ _ (crc32_xor_lt c1 b h1) (crc32_xor_lt c2 b h2) h)

/-- The byte step of the CRC is injective in the byte. -/
theorem crc32_byte_inj_byte (c b1 b2 : Nat) (hc : c < U32)
    (h : crc32_byte c b1 = crc32_byte c b2) : b1 % 256 = b2 % 256 := by
  unfold crc32_byte at h
  exact Nat.xor_right_inj.mp (crc32_bit8_inj _ _ (crc32_xor_lt c b1 hc) (crc32_xor_lt c b2 hc) h)

theorem crc32_foldl_inj (data : List Nat) :
    ∀ (c1 c2 : Nat), c1 < U32 → c2 < U32 →
      data.foldl crc32_byte c1 = data.foldl crc32_byte c2 → c1 = c2 := by
  induction data with
  | nil => intro c1 c2 _ _ h; exact h
  | cons b bs ih =>
    intro c1 c2 h1 h2 h
    exact crc32_byte_inj_state c1 c2 b h1 h2
      (ih _ _ (crc32_byte_lt c1 b h1) (crc32_byte_lt c2 b h2) h)

theorem fram_crc32_le_eq (seed : Nat) (data : List Nat) :
    fram_crc32_le seed data = data.foldl crc32_byte (seed % U32) := by
  unfold fram_crc32_le esp_rom_crc32_le
  rfl

/-- The checksum is injective in its seed. -/
theorem fram_crc32_le_inj (s1 s2 : Nat) (data : List Nat) (h1 : s1 < U32) (h2 : s2 < U32)
    (h : fram_crc32_le s1 data = fram_crc32_le s2 data) : s1 = s2 := by
  rw [fram_crc32_le_eq, fram_crc32_le_eq, Nat.mod_eq_of_lt h1, Nat.mod_eq_of_lt h2] at h
  exact crc32_foldl_inj data s1 s2 h1 h2 h

/-- Two byte strings that differ in one byte have different checksums. -/
theorem fram_crc32_le_flip (s x y : Nat) (pre post : List Nat) (hs : s < U32)
    (hxy : x % 256 ≠ y % 256) :
    fram_crc32_le s (pre ++ x :: post) ≠ fram_crc32_le s (pre ++ y :: post) := by
  intro h
  rw [fram_crc32_le_eq, fram_crc32_le_eq, Nat.mod_eq_of_lt hs, List.foldl_append,
    List.foldl_append, List.foldl_cons, List.foldl_cons] at h
  have hp := crc32_foldl_lt pre s hs
  have h2 := crc32_foldl_inj post _ _ (crc32_byte_lt _ x hp) (crc32_byte_lt _ y hp) h
  exact hxy (crc32_byte_inj_byte _ x y hp h2)

/-! ## CRC32 over media segments -/

theorem mem_read_split (m : Nat → Nat) (a len t : Nat) (ht : t < len) :
    mem_read m a len = mem_read m a t ++ m (a + t) :: mem_read m (a + t + 1) (len - t - 1) := by
  have e : len = t + (1 + (len - t - 1)) := by omega
  rw [e, mem_read_add, mem_read_add, mem_read_one]
  have e2 : t + (1 + (len - t - 1)) - t - 1 = len - t - 1 := by omega
  rw [e2]
  rfl

/-- Equal segments from different states give different checksums, from the
same state the same checksum. -/
theorem crc_seg_same (m1 m2 : Nat → Nat) (a len s1 s2 : Nat)
    (hsame : ∀ i, i < len → m1 (a + i) = m2 (a + i)) (h1 : s1 < U32) (h2 : s2 < U32) :
    (s1 = s2 → fram_crc32_le s1 (mem_read m1 a len) = fram_crc32_le s2 (mem_read m2 a len)) ∧
    (s1 ≠ s2 → fram_crc32_le s1 (mem_read m1 a len) ≠ fram_crc32_le s2 (mem_read m2 a len)) := by
  rw [mem_read_congr m1 m2 a len hsame]
  exact ⟨fun e => by rw [e], fun hne h => hne (fram_crc32_le_inj s1 s2 _ h1 h2 h)⟩

/-- Segments that differ in one byte give different checksums from the same
state. -/
theorem crc_seg_flip (m1 m2 : Nat → Nat) (a len s t : Nat) (ht : t < len)
    (hdiff : m1 (a + t) % 256 ≠ m2 (a + t) % 256)
    (hsame : ∀ i, i < len → i ≠ t → m1 (a + i) = m2 (a + i)) (hs : s < U32) :
    fram_crc32_le s (mem_read m1 a len) ≠ fram_crc32_le s (mem_read m2 a len) := by
  rw [mem_read_split m1 a len t ht, mem_read_split m2 a len t ht,
    mem_read_congr m1 m2 a t (fun i hi => hsame i (by omega) (by omega)),
    mem_read_congr m1 m2 (a + t + 1) (len - t - 1)
      (fun i hi => by
        have := hsame (t + 1 + i) (by omega) (by omega)
        rw [show a + t + 1 + i = a + (t + 1 + i) by omega]
        exact this)]
  exact fram_crc32_le_flip s _ _ _ _ hs hdiff

/-- The checksum that the scan computes over a record (header up to the
checksum field, key, value) changes when one of these bytes changes. -/
theorem crc_record_flip (m1 m2 : Nat → Nat) (r kl vl j : Nat)
    (hj : j < 16 ∨ (20 ≤ j ∧ j < 20 + kl + vl))
    (hdiff : m1 (r + j) % 256 ≠ m2 (r + j) % 256)
    (hsame : ∀ a, a ≠ r + j → m1 a = m2 a) :
    fram_crc32_le (fram_crc32_le (fram_crc32_le 0 (mem_read m1 r 16))
        (mem_read m1 (r + 20) kl)) (mem_read m1 (r + 20 + kl) vl)
      ≠ fram_crc32_le (fram_crc32_le (fram_crc32_le 0 (mem_read m2 r 16))
        (mem_read m2 (r + 20) kl)) (mem_read m2 (r + 20 + kl) vl) := by
  have h0 : (0 : Nat) < U32 := by decide
  have L := fram_crc32_le_lt
  rcases hj with hj | ⟨hj1, hj2⟩
  · have s1 := crc_seg_flip m1 m2 r 16 0 j hj hdiff (fun i _ hi => hsame _ (by omega)) h0
    have s2 := (crc_seg_same m1 m2 (r + 20) kl _ _ (fun i _ => hsame _ (by omega))
      (L _ _) (L _ _)).2 s1
    exact (crc_seg_same m1 m2 (r + 20 + kl) vl _ _ (fun i _ => hsame _ (by omega))
      (L _ _) (L _ _)).2 s2
  · have s1 := (crc_seg_same m1 m2 r 16 0 0 (fun i _ => hsame _ (by omega)) h0 h0).1 rfl
    by_cases hk : j < 20 + kl
    · have s2 : fram_crc32_le (fram_crc32_le 0 (mem_read m1 r 16)) (mem_read m1 (r + 20) kl)
          ≠ fram_crc32_le (fram_crc32_le 0 (mem_read m2 r 16)) (mem_read m2 (r + 20) kl) := by
        rw [s1]
        exact crc_seg_flip m1 m2 (r + 20) kl _ (j - 20) (by omega)
          (by rw [show r + 20 + (j - 20) = r + j by omega]; exact hdiff)
          (fun i _ hi => hsame _ (by omega)) (L _ _)
      exact (crc_seg_same m1 m2 (r + 20 + kl) vl _ _ (fun i _ => hsame _ (by omega))
        (L _ _) (L _ _)).2 s2
    · have s2 := (crc_seg_same m1 m2 (r + 20) kl _ _ (fun i _ => hsame _ (by omega))
        (L _ _) (L _ _)).1 s1
      rw [s2]
      exact crc_seg_flip m1 m2 (r + 20 + kl) vl _ (j - 20 - kl) (by omega)
        (by rw [show r + 20 + kl + (j - 20 - kl) = r + j by omega]; exact hdiff)
        (fun i _ hi => hsame _ (by omega)) (L _ _)

/-! ## The header read from bytes -/

theorem mem_read_bytes_local (m : Nat → Nat) (a len : Nat) (h : ∀ i, i < len → m (a + i) < 256) :
    ∀ b ∈ mem_read m a len, b < 256 := by
  intro b hb
  simp only [mem_read, List.mem_map, List.mem_range] at hb
  obtain ⟨i, hi, rfl⟩ := hb
  exact h i hi

theorem le_bytes_mem_read_local (m : Nat → Nat) (a len : Nat)
    (h : ∀ i, i < len → m (a + i) < 256) :
    le_bytes len (le_val (mem_read m a len)) = mem_read m a len := by
  have := le_bytes_le_val (mem_read m a len) (mem_read_bytes_local m a len h)
  rw [mem_read_length] at this
  exact this

/-- The header read at an offset that holds bytes: its first 16 bytes are the
bytes read, and its checksum field is the value of the last four. -/
theorem kvs_head_bytes_read (m : Nat → Nat) (w : Nat) (h : ∀ i, i < 16 → m (w + i) < 256) :
    (fram_kvs_header_of_bytes (mem_read m w 20)).head_bytes = mem_read m w 16 ∧
    (fram_kvs_header_of_bytes (mem_read m w 20)).crc32 = le_val (mem_read m (w + 16) 4) := by
  constructor
  · unfold fram_kvs_header_t.head_bytes fram_kvs_header_of_bytes
    simp only
    rw [slice_mem_read m w 20 0 4 (by decide), slice_mem_read m w 20 4 4 (by decide),
      slice_mem_read m w 20 8 2 (by decide), slice_mem_read m w 20 10 2 (by decide),
      slice_mem_read m w 20 12 1 (by decide), slice_mem_read m w 20 13 3 (by decide),
      le_bytes_mem_read_local m (w + 0) 4 (fun i hi => by
        rw [Nat.add_assoc]; exact h _ (by omega)),
      le_bytes_mem_read_local m (w + 4) 4 (fun i hi => by
        rw [Nat.add_assoc]; exact h _ (by omega)),
      le_bytes_mem_read_local m (w + 8) 2 (fun i hi => by
        rw [Nat.add_assoc]; exact h _ (by omega)),
      le_bytes_mem_read_local m (w + 10) 2 (fun i hi => by
        rw [Nat.add_assoc]; exact h _ (by omega)),
      le_bytes_mem_read_local m (w + 12) 1 (fun i hi => by
        rw [Nat.add_assoc]; exact h _ (by omega)),
      le_bytes_mem_read_local m (w + 13) 3 (fun i hi => by
        rw [Nat.add_assoc]; exact h _ (by omega))]
    have e : (16 : Nat) = 0 + (4 + (4 + (2 + (2 + (1 + 3))))) := rfl
    rw [e]
    simp only [mem_read_add, mem_read_zero, List.nil_append, Nat.add_assoc, Nat.add_zero]
  · unfold fram_kvs_header_of_bytes
    simp only
    rw [slice_mem_read m w 20 16 4 (by decide)]

theorem le_val_read4 (m : Nat → Nat) (a : Nat) :
    le_val (mem_read m a 4) = m a + 256 * (m (a + 1) + 256 * (m (a + 2) + 256 * m (a + 3))) := by
  simp [mem_read, le_val, List.range, List.range.loop]

/-! ## Key/value store: a record with one flipped byte -/

theorem getD_lt_of_all (l : List Nat) (i : Nat) (h : ∀ b ∈ l, b < 256) : l.getD i 0 < 256 := by
  rw [List.getD_eq_getElem?_getD]
  cases hg : l[i]? with
  | none => simp
  | some b =>
    simp only [Option.getD_some]
    exact h b (List.getElem?_mem hg)

set_option maxRecDepth 100000 in
theorem xor_255_key_len : ∀ k, k ≤ 15 → 15 < k ^^^ 255 := by decide

set_option maxHeartbeats 1000000 in
/-- No record is accepted at a committed record of a call in which one byte
was flipped, unless the byte is one of the two bytes of `value_len` and the
flip makes `value_len` smaller. -/
theorem kvs_accept_flipped (K : Kconfig) (kvs : fram_kvs_t) (p : fram_partition_t)
    (pmem : Nat → Nat) (r seq j : Nat) (op : kvs_op)
    (hm : kvs.magic < U32) (hs : seq < U32) (hv : op.valid K)
    (hrec : KRec pmem r kvs.magic seq op)
    (herased : ∀ a, r + op.size ≤ a → a < p.size → pmem a = 0xFF)
    (hj : j < op.size)
    (hj10 : j = 10 → op.value.length % 256 < 128)
    (hj11 : j = 11 → op.value.length / 256 % 256 < 128) :
    kvs_accept K kvs p (mem_write pmem (r + j) [pmem (r + j) ^^^ 255]) r = none ∧
    (fram_kvs_header_of_bytes
      (mem_read (mem_write pmem (r + j) [pmem (r + j) ^^^ 255]) r 20)).value_len < 65536 := by
  have hsize := kvs_op_size_eq op
  have hk2 : op.key.length ≤ 15 := hv.2.1
  have hv2 : op.value.length ≤ 65535 := hv.2.2.1
  have hrec0 := hrec
  unfold KRec at hrec
  rw [hsize] at hrec
  obtain ⟨i1, i2, i3, i4⟩ := kvs_image_parts pmem r _ op.key op.value FRAM_KVS_COMMIT
    (kvs_to_bytes_length _) hrec
  have hbyte : ∀ i, i < 20 →
      pmem (r + i) = (kvs_header_for kvs.magic seq op).to_bytes.getD i 0 := by
    intro i hi
    rw [← i1, mem_read_getD _ _ _ _ hi]
  have hblt : ∀ i, i < 20 → pmem (r + i) < 256 := by
    intro i hi
    rw [hbyte i hi]
    exact getD_lt_of_all _ _ (kvs_to_bytes_lt _)
  obtain ⟨b8, b9, b10, b11⟩ := kvs_to_bytes_lens (kvs_header_for kvs.magic seq op)
  have l1 : (kvs_header_for kvs.magic seq op).key_len = op.key.length := rfl
  have l2 : (kvs_header_for kvs.magic seq op).value_len = op.value.length := rfl
  rw [l1] at b8 b9
  rw [l2] at b10 b11
  have p8 := hbyte 8 (by decide)
  have p9 := hbyte 9 (by decide)
  have p10 := hbyte 10 (by decide)
  have p11 := hbyte 11 (by decide)
  rw [b8] at p8
  rw [b9] at p9
  rw [b10] at p10
  rw [b11] at p11
  -- the flipped media
  obtain ⟨m, hmdef⟩ : ∃ m, m = mem_write pmem (r + j) [pmem (r + j) ^^^ 255] := ⟨_, rfl⟩
  rw [← hmdef]
  have hout : ∀ a, a ≠ r + j → m a = pmem a := by
    intro a ha
    rw [hmdef]
    exact mem_write_outside _ _ _ _ (by simp only [List.length_singleton]; omega)
  have hin : m (r + j) = pmem (r + j) ^^^ 255 := by
    rw [hmdef]
    have := mem_write_inside pmem (r + j) [pmem (r + j) ^^^ 255] 0 (Nat.zero_lt_one)
    rw [Nat.add_zero] at this
    rw [this]
    rfl
  have hmlt : ∀ i, i < 20 → m (r + i) < 256 := by
    intro i hi
    by_cases c : i = j
    · rw [c, hin]
      exact xor_255_lt _ (hblt j (by omega))
    · rw [hout _ (by omega)]
      exact hblt i hi
  obtain ⟨r1, r2⟩ := kvs_read_lens m r
  have q10 := hmlt 10 (by decide)
  have q11 := hmlt 11 (by decide)
  refine ⟨?_, by rw [r2]; omega⟩
  cases hacc : kvs_accept K kvs p m r with
  | none => rfl
  | some h =>
    exfalso
    obtain ⟨e, _, e3, e4, e5, e6⟩ := kvs_accept_some K kvs p m r h hacc
    obtain ⟨_, _, k2, _⟩ := kvs_valid_key_len K kvs h e3
    have ekl : h.key_len = m (r + 8) + 256 * m (r + 9) := by rw [e]; exact r1
    have evl : h.value_len = m (r + 10) + 256 * m (r + 11) := by rw [e]; exact r2
    by_cases c8 : j = 8
    · subst c8
      rw [ekl, hin, hout (r + 9) (by omega), p8, p9] at k2
      have := xor_255_key_len (op.key.length % 256) (by omega)
      omega
    by_cases c9 : j = 9
    · subst c9
      rw [ekl, hin, hout (r + 8) (by omega), p8, p9] at k2
      have : op.key.length / 256 % 256 = 0 := by omega
      rw [this] at k2
      have : (0 : Nat) ^^^ 255 = 255 := by decide
      omega
    have ekl2 : h.key_len = op.key.length := by
      rw [ekl, hout (r + 8) (by omega), hout (r + 9) (by omega), p8, p9]
      omega
    by_cases c10 : j = 10
    · subst c10
      have hx := xor_255_eq (op.value.length % 256) (by omega)
      have hgt : op.value.length < h.value_len := by
        rw [evl, hin, hout (r + 11) (by omega), p10, p11, hx]
        have := hj10 rfl
        omega
      rw [ekl2] at e4 e5
      rw [hout _ (by omega), herased _ (by omega) (by omega)] at e5
      exact absurd e5 (by decide)
    by_cases c11 : j = 11
    · subst c11
      have hx := xor_255_eq (op.value.length / 256 % 256) (by omega)
      have hgt : op.value.length < h.value_len := by
        rw [evl, hin, hout (r + 10) (by omega), p10, p11, hx]
        have := hj11 rfl
        omega
      rw [ekl2] at e4 e5
      rw [hout _ (by omega), herased _ (by omega) (by omega)] at e5
      exact absurd e5 (by decide)
    have evl2 : h.value_len = op.value.length := by
      rw [evl, hout (r + 10) (by omega), hout (r + 11) (by omega), p10, p11]
      omega
    rw [ekl2, evl2] at e5 e6
    by_cases cc : j = 20 + op.key.length + op.value.length
    · rw [show r + 20 + op.key.length + op.value.length = r + j by omega, hin,
        show r + j = r + 20 + op.key.length + op.value.length by omega, i4] at e5
      exact absurd e5 (by decide)
    -- the checksum
    obtain ⟨hh1, hh2⟩ := kvs_head_bytes_read m r (fun i hi => hmlt i (by omega))
    rw [← e] at hh1 hh2
    rw [hh1, hh2] at e6
    obtain ⟨g1, g2⟩ := kvs_head_bytes_read pmem r (fun i hi => hblt i (by omega))
    have hhdr := kvs_rec_header K pmem r kvs.magic seq op hm hs hv hrec0
    rw [hhdr] at g1 g2
    have horig : fram_crc32_le (fram_crc32_le (fram_crc32_le 0 (mem_read pmem r 16))
        (mem_read pmem (r + 20) op.key.length))
        (mem_read pmem (r + 20 + op.key.length) op.value.length)
        = le_val (mem_read pmem (r + 16) 4) := by
      rw [← g1, ← g2, i2, i3, ← kvs_header_for_crc]
    by_cases c16 : 16 ≤ j ∧ j < 20
    · have hsame : fram_crc32_le (fram_crc32_le (fram_crc32_le 0 (mem_read m r 16))
          (mem_read m (r + 20) op.key.length))
          (mem_read m (r + 20 + op.key.length) op.value.length)
          = fram_crc32_le (fram_crc32_le (fram_crc32_le 0 (mem_read pmem r 16))
          (mem_read pmem (r + 20) op.key.length))
          (mem_read pmem (r + 20 + op.key.length) op.value.length) := by
        rw [mem_read_congr m pmem r 16 (fun i hi => hout _ (by omega)),
          mem_read_congr m pmem (r + 20) _ (fun i hi => hout _ (by omega)),
          mem_read_congr m pmem (r + 20 + op.key.length) _ (fun i hi => hout _ (by omega))]
      rw [hsame, horig, le_val_read4, le_val_read4] at e6
      have hne := xor_255_ne (pmem (r + j))
      have a0 := hblt 16 (by decide)
      have a1 := hblt 17 (by decide)
      have a2 := hblt 18 (by decide)
      have a3 := hblt 19 (by decide)
      have c0 := hmlt 16 (by decide)
      have c1 := hmlt 17 (by decide)
      have c2 := hmlt 18 (by decide)
      have c3 := hmlt 19 (by decide)
      simp only [Nat.add_assoc, Nat.reduceAdd] at e6 a0 a1 a2 a3 c0 c1 c2 c3
      obtain ⟨t, rfl⟩ : ∃ t, j = 16 + t := ⟨j - 16, by omega⟩
      have ht : t < 4 := by omega
      rw [← Nat.add_assoc] at hin hne
      interval_cases t
      · have o1 := hout (r + 17) (by omega)
        have o2 := hout (r + 18) (by omega)
        have o3 := hout (r + 19) (by omega)
        simp only [Nat.add_zero] at hin hne
        omega
      · have o1 := hout (r + 16) (by omega)
        have o2 := hout (r + 18) (by omega)
        have o3 := hout (r + 19) (by omega)
        simp only [Nat.add_assoc, Nat.reduceAdd] at hin hne
        omega
      · have o1 := hout (r + 16) (by omega)
        have o2 := hout (r + 17) (by omega)
        have o3 := hout (r + 19) (by omega)
        simp only [Nat.add_assoc, Nat.reduceAdd] at hin hne
        omega
      · have o1 := hout (r + 16) (by omega)
        have o2 := hout (r + 17) (by omega)
        have o3 := hout (r + 18) (by omega)
        simp only [Nat.add_assoc, Nat.reduceAdd] at hin hne
        omega
    · have hflip := crc_record_flip m pmem r op.key.length op.value.length j (by omega)
        (by rw [hin]; exact xor_255_mod _) hout
      have hg : le_val (mem_read m (r + 16) 4) = le_val (mem_read pmem (r + 16) 4) := by
        rw [mem_read_congr m pmem (r + 16) 4 (fun i hi => hout _ (by omega))]
      rw [hg, ← horig] at e6
      exact hflip e6

/-- Complementing one byte of the partition through the backing buffer leaves a
working device whose partition holds the complemented byte. -/
theorem kvs_flip_ok (pm : fram_pm_t) (p : fram_partition_t) (pmem : Nat → Nat) (offset : Nat)
    (h : PmOK pm p pmem) (hr : offset < p.size) :
    PmOK (kvs_flip_byte pm p offset) p (mem_write pmem offset [pmem offset ^^^ 255]) := by
  have e : pm.dev.hal.ctx.buffer (p.offset + offset) = pmem offset :=
    pm_any_media pm p pmem h.pm_any offset hr
  unfold kvs_flip_byte
  simp only
  rw [e]
  exact pm_poke_ok pm p pmem offset _ h hr

theorem kvs_flip_same (pm : fram_pm_t) (p : fram_partition_t) (offset : Nat) :
    PmSame pm (kvs_flip_byte pm p offset) := ⟨rfl, rfl⟩

/-- C16 (amended). KVS torn-record truncation, on partitions of at most
`2^32 - 65572` bytes and for every byte of the most recent record other than a
byte of `value_len` whose complement lowers `value_len`. On an erased partition
of that size, after `fram_kvs_init`, any run `ops` of successful sets and
deletes and one more successful set or delete `op` (the most recent record,
written at `write_offset` of the store before the call), let byte `j` of that
record (header, key, value or commit byte) be complemented on the media, where
`j` is not byte 10 with bit 7 of the low byte of the value length set, nor
byte 11 with bit 7 of its high byte set. Then `fram_kvs_init` returns `ESP_OK`
with the store object of before the call `op`: `write_offset` is the start
offset of the record, `next_seq` its sequence number. `fram_kvs_get` then gives
for every key, buffer and `*len` the return value, buffer content and `*len`
it gave before the call `op`, and every `fram_kvs_set` that then returns
`ESP_OK` leaves its committed record at that start offset. -/
theorem kvs_torn_record_truncated (K : Kconfig) (pm pm1 pmA pm2 : fram_pm_t)
    (p : fram_partition_t) (pmem : Nat → Nat) (cfg : fram_kvs_config_t)
    (kvs1 kvsA kvs2 : fram_kvs_t) (ops : List kvs_op) (op : kvs_op) (j : Nat)
    (hmagic : cfg.magic < U32) (h : PmOK pm p pmem)
    (hfind : fram_pm_find pm cfg.partition_name = some p)
    (herased : ∀ i, i < p.size → pmem i = 0xFF)
    (hsize : p.size + 65572 ≤ U32)
    (hinit : fram_kvs_init K pm cfg = (ESP_OK, kvs1, pm1))
    (hops : fram_kvs_apply_all K kvs1 pm1 ops = (ESP_OK, kvsA, pmA))
    (hlast : fram_kvs_apply K kvsA pmA op = (ESP_OK, kvs2, pm2))
    (hj : j < op.size)
    (hj10 : j = 10 → op.value.length % 256 < 128)
    (hj11 : j = 11 → op.value.length / 256 % 256 < 128) :
    kvsA.write_offset = kvs_log_size ops ∧
    kvs2.write_offset = kvsA.write_offset + op.size ∧
    ∃ pm3, fram_kvs_init K (kvs_flip_byte pm2 p (kvsA.write_offset + j)) cfg
        = (ESP_OK, kvsA, pm3) ∧
      (∀ k buf cap, ∃ (r : esp_err_t × List Nat × Nat) (pm4 pm5 : fram_pm_t),
        fram_kvs_get K kvsA pmA k buf cap = (r.1, r.2.1, r.2.2, pm4) ∧
        fram_kvs_get K kvsA pm3 k buf cap = (r.1, r.2.1, r.2.2, pm5)) ∧
      (∀ k v kvs4 pm4, fram_kvs_set K kvsA pm3 k v = (ESP_OK, kvs4, pm4) →
        kvs4.write_offset = kvsA.write_offset + (kvs_op.set k v).size ∧
        ∃ pmem4, PmOK pm4 p pmem4 ∧
          KRec pmem4 kvsA.write_offset kvsA.magic kvsA.next_seq (kvs_op.set k v)) := by
  obtain ⟨pmemA, hA, heA, hmA⟩ := kvs_run_exact K pm pm1 pmA p pmem cfg kvs1 kvsA ops hmagic h
    hfind herased hinit hops
  have haA := heA.after
  have hfits := haA.fits
  have hoff := haA.offset
  have hU := hsize
  rw [U32_eq] at hU
  obtain ⟨hv, hfit, hk2, pmem3, h3, hrec, hframe⟩ := kvs_apply_media K kvsA kvs2 p pmemA pmA pm2
    op haA.part haA.mutex (by omega) hsize hA hlast
  have hF := kvs_flip_ok pm2 p pmem3 (kvsA.write_offset + j) h3 (by omega)
  have hout : ∀ a, a ≠ kvsA.write_offset + j →
      mem_write pmem3 (kvsA.write_offset + j) [pmem3 (kvsA.write_offset + j) ^^^ 255] a
        = pmem3 a := by
    intro a ha
    exact mem_write_outside _ _ _ _ (by simp only [List.length_singleton]; omega)
  have herased3 : ∀ a, kvsA.write_offset + op.size ≤ a → a < p.size → pmem3 a = 0xFF :=
    fun a h1 h2 => (hframe a (Or.inr h1)).trans (haA.erased a (by omega) h2)
  obtain ⟨hacc, hvl⟩ := kvs_accept_flipped K kvsA p pmem3 kvsA.write_offset kvsA.next_seq j op
    haA.magic_lt haA.seq_lt hv hrec herased3 hj hj10 hj11
  obtain ⟨m, hmdef⟩ : ∃ m, m = mem_write pmem3 (kvsA.write_offset + j)
    [pmem3 (kvsA.write_offset + j) ^^^ 255] := ⟨_, rfl⟩
  rw [← hmdef] at hF hout hacc hvl
  rw [hoff] at hacc hvl
  have hsame : ∀ a, a < kvs_log_size ops → m a = pmemA a :=
    fun a ha => (hout a (by omega)).trans (hframe a (Or.inl (by omega)))
  have hlog : KLogSeq m cfg.magic 0 0 ops := by
    rw [← hmA]
    exact klogseq_congr pmemA m kvsA.magic ops 0 0 (fun a _ h2 => hsame a (by omega)) heA.log
  have hs1 : PmSame pm pm1 := by
    have := fram_kvs_init_same K pm cfg
    rw [hinit] at this
    exact this
  have hs2 : PmSame pm1 pmA := by
    have := fram_kvs_apply_all_same K ops kvs1 pm1
    rw [hops] at this
    exact this
  have hs3 : PmSame pmA pm2 := by
    have := fram_kvs_apply_same K kvsA pmA op
    rw [hlast] at this
    exact this
  have hsame4 : PmSame pm (kvs_flip_byte pm2 p (kvsA.write_offset + j)) :=
    PmSame.trans_same _ _ _ (PmSame.trans_same _ _ _ (PmSame.trans_same _ _ _ hs1 hs2) hs3)
      (kvs_flip_same pm2 p _)
  have hfind4 : fram_pm_find (kvs_flip_byte pm2 p (kvsA.write_offset + j)) cfg.partition_name
      = some p := by
    rw [fram_pm_find_same _ _ _ hsame4]
    exact hfind
  obtain ⟨pm3, hi3, hok3⟩ := kvs_init_of_log K _ p m cfg ops kvsA hmagic hF hfind4
    (by rw [U32_eq]; omega) hlog haA.valid hfits hmA hacc (fun _ => hvl)
  rw [kvs_exact_eq K kvsA p pmemA ops cfg.magic heA hmA] at hi3
  refine ⟨hoff, by rw [hk2], pm3, hi3, ?_, ?_⟩
  · intro k buf cap
    by_cases hk : 1 ≤ k.length ∧ k.length ≤ FRAM_KVS_KEY_MAX
    · have hstopA : KStop K kvsA p pmemA (kvs_log_size ops) :=
        kvs_stop_erased K kvsA p pmemA _ haA.part (by rw [U32_eq]; omega) haA.erased
      have hstop : KStop K kvsA p m (kvs_log_size ops) :=
        kvs_stop_of_accept K kvsA p m _ haA.part (by rw [U32_eq]; omega) (fun _ => hvl) hacc
      have hklog : KLog m kvsA.magic 0 ops :=
        klog_congr pmemA m kvsA.magic ops 0 (fun a _ h2 => hsame a (by omega)) haA.log
      obtain ⟨pm4, g4⟩ := kvs_get_of_log K kvsA p pmemA pmA ops k buf cap haA.part haA.magic_lt
        haA.mutex hA haA.log haA.valid hfits hstopA hk.1 hk.2
      obtain ⟨pm5, g5⟩ := kvs_get_of_log K kvsA p m pm3 ops k buf cap haA.part haA.magic_lt
        haA.mutex hok3 hklog haA.valid hfits hstop hk.1 hk.2
      exact ⟨kvs_get_spec (kvs_map_spec ops k) buf cap, pm4, pm5, g4, g5⟩
    · exact ⟨(ESP_ERR_INVALID_ARG, buf, cap), pmA, pm3,
        kvs_get_bad_key K kvsA pmA k buf cap hk, kvs_get_bad_key K kvsA pm3 k buf cap hk⟩
  · intro k v kvs4 pm4 hset
    obtain ⟨_, _, hk4, pmem4, h4, hrec4, _⟩ := kvs_apply_media K kvsA kvs4 p m pm3 pm4
      (kvs_op.set k v) haA.part haA.mutex (by omega) hsize hok3
      (by rw [fram_kvs_apply_set]; exact hset)
    exact ⟨by rw [hk4], pmem4, h4, hrec4⟩

/-- A run of calls followed by one more call. -/
theorem kvs_apply_all_snoc (K : Kconfig) (op : kvs_op) :
    ∀ (ops : List kvs_op) (kvs : fram_kvs_t) (pm : fram_pm_t) (kvsA : fram_kvs_t)
      (pmA : fram_pm_t), fram_kvs_apply_all K kvs pm ops = (ESP_OK, kvsA, pmA) →
      fram_kvs_apply_all K kvs pm (ops ++ [op])
        = if (fram_kvs_apply K kvsA pmA op).1 ≠ ESP_OK then fram_kvs_apply K kvsA pmA op
          else (ESP_OK, (fram_kvs_apply K kvsA pmA op).2.1, (fram_kvs_apply K kvsA pmA op).2.2) := by
  intro ops
  induction ops with
  | nil =>
    intro kvs pm kvsA pmA h
    have h1 : kvs = kvsA := (Prod.mk.inj (Prod.mk.inj h).2).1
    have h2 : pm = pmA := (Prod.mk.inj (Prod.mk.inj h).2).2
    subst h1
    subst h2
    rfl
  | cons o rest ih =>
    intro kvs pm kvsA pmA h
    rw [List.cons_append]
    have e1 : ∀ l, fram_kvs_apply_all K kvs pm (o :: l)
        = if (fram_kvs_apply K kvs pm o).1 ≠ ESP_OK then fram_kvs_apply K kvs pm o
          else fram_kvs_apply_all K (fram_kvs_apply K kvs pm o).2.1
            (fram_kvs_apply K kvs pm o).2.2 l := fun _ => rfl
    rw [e1] at h ⊢
    by_cases c : (fram_kvs_apply K kvs pm o).1 ≠ ESP_OK
    · rw [if_pos c] at h
      rw [h] at c
      exact absurd rfl c
    · rw [if_neg c] at h ⊢
      exact ih _ _ _ _ h

/-- A successful run of calls that ends with the call `op`: the last call
returned `ESP_OK` on the store the calls before it left. -/
theorem kvs_apply_all_last (K : Kconfig) (op : kvs_op) (ops : List kvs_op)
    (kvs kvsA kvs2 : fram_kvs_t) (pm pmA pm2 : fram_pm_t)
    (h1 : fram_kvs_apply_all K kvs pm ops = (ESP_OK, kvsA, pmA))
    (h2 : fram_kvs_apply_all K kvs pm (ops ++ [op]) = (ESP_OK, kvs2, pm2)) :
    fram_kvs_apply K kvsA pmA op = (ESP_OK, kvs2, pm2) := by
  rw [kvs_apply_all_snoc K op ops kvs pm kvsA pmA h1] at h2
  by_cases c : (fram_kvs_apply K kvsA pmA op).1 ≠ ESP_OK
  · rw [if_pos c] at h2
    exact h2
  · rw [if_neg c] at h2
    have e1 : (fram_kvs_apply K kvsA pmA op).2.1 = kvs2 := (Prod.mk.inj (Prod.mk.inj h2).2).1
    have e2 : (fram_kvs_apply K kvsA pmA op).2.2 = pm2 := (Prod.mk.inj (Prod.mk.inj h2).2).2
    have e0 : (fram_kvs_apply K kvsA pmA op).1 = ESP_OK := not_not.mp c
    rw [← e1, ← e2, ← e0]

theorem example_kvs_one_valid (op : kvs_op) (ho : op ∈ [kvs_op.set [0x61] [0x6F, 0x6E, 0x65]]) :
    op.valid example_K := by
  have h : op = kvs_op.set [0x61] [0x6F, 0x6E, 0x65] := by simpa using ho
  subst h
  exact ⟨by decide, by decide, by decide, by decide⟩

/-- Witness for C16: after `set("a", "one", 3)` and `set("b", "two", 3)` on
the erased `"kvs"` partition of the tests, the first value byte of the second
record (byte 21 of the record at offset 25) is complemented in the backing
buffer. `fram_kvs_init` then returns the store object of before the second
call, with `write_offset` 25; `fram_kvs_get("b")` returns `ESP_ERR_NOT_FOUND`
and `fram_kvs_get("a")` returns `"one"`. -/
theorem kvs_torn_record_truncated_witness :
    ∃ pm3 pm4 pm5, fram_kvs_init example_K (example_flip_pm 21) example_kvs_cfg
        = (ESP_OK, (example_kvs_run example_pm [kvs_op.set [0x61] [0x6F, 0x6E, 0x65]]).2.1,
            pm3) ∧
      (example_kvs_run example_pm [kvs_op.set [0x61] [0x6F, 0x6E, 0x65]]).2.1.write_offset
        = 25 ∧
      fram_kvs_get example_K
        (example_kvs_run example_pm [kvs_op.set [0x61] [0x6F, 0x6E, 0x65]]).2.1 pm3
        [0x62] [0, 0, 0, 0, 0, 0, 0, 0] 8
        = (ESP_ERR_NOT_FOUND, [0, 0, 0, 0, 0, 0, 0, 0], 8, pm4) ∧
      fram_kvs_get example_K
        (example_kvs_run example_pm [kvs_op.set [0x61] [0x6F, 0x6E, 0x65]]).2.1 pm3
        [0x61] [0, 0, 0, 0, 0, 0, 0, 0] 8
        = (ESP_OK, [0x6F, 0x6E, 0x65, 0, 0, 0, 0, 0], 3, pm5) := by
  obtain ⟨hinit, hrun1, _⟩ := example_kvs_run_ok example_pm example_kvs_part
    [kvs_op.set [0x61] [0x6F, 0x6E, 0x65]] example_pm_kvs_ok example_kvs_find
    example_kvs_one_valid (by decide)
  obtain ⟨_, hrun2, _⟩ := example_kvs_run_ok example_pm example_kvs_part
    example_kvs_ops example_pm_kvs_ok example_kvs_find example_kvs_ops_valid (by decide)
  obtain ⟨pmemA, hA, heA, hmA, _⟩ := example_kvs_run_exact
    [kvs_op.set [0x61] [0x6F, 0x6E, 0x65]] example_kvs_one_valid (by decide)
  have haA := heA.after
  have hlast := kvs_apply_all_last example_K (kvs_op.set [0x62] [0x74, 0x77, 0x6F])
    [kvs_op.set [0x61] [0x6F, 0x6E, 0x65]] _ _ _ _ _ _ hrun1 hrun2
  have hw := kvs_torn_record_truncated example_K example_pm _ _ _ example_kvs_part
    (fun _ => 0xFF) example_kvs_cfg _ _ _ [kvs_op.set [0x61] [0x6F, 0x6E, 0x65]]
    (kvs_op.set [0x62] [0x74, 0x77, 0x6F]) 21 (by decide) example_pm_kvs_ok example_kvs_find
    (fun _ _ => rfl) (by decide) hinit hrun1 hlast (by decide) (by decide) (by decide)
  obtain ⟨hwo, _, pm3, hi3, hget, _⟩ := hw
  have hwo2 : (example_kvs_run example_pm [kvs_op.set [0x61] [0x6F, 0x6E, 0x65]]).2.1.write_offset
      = 25 := hwo
  rw [hwo2] at hi3
  have hstopA : KStop example_K
      (example_kvs_run example_pm [kvs_op.set [0x61] [0x6F, 0x6E, 0x65]]).2.1
      example_kvs_part pmemA (kvs_log_size [kvs_op.set [0x61] [0x6F, 0x6E, 0x65]]) :=
    kvs_stop_erased example_K _ example_kvs_part pmemA _ haA.part (by decide) haA.erased
  obtain ⟨rb, pb1, pb2, gb1, gb2⟩ := hget [0x62] [0, 0, 0, 0, 0, 0, 0, 0] 8
  obtain ⟨ra, pa1, pa2, ga1, ga2⟩ := hget [0x61] [0, 0, 0, 0, 0, 0, 0, 0] 8
  obtain ⟨qb, fb⟩ := kvs_get_of_log example_K _ example_kvs_part pmemA
    (example_kvs_run example_pm [kvs_op.set [0x61] [0x6F, 0x6E, 0x65]]).2.2
    [kvs_op.set [0x61] [0x6F, 0x6E, 0x65]] [0x62] [0, 0, 0, 0, 0, 0, 0, 0] 8
    haA.part haA.magic_lt haA.mutex hA haA.log haA.valid haA.fits hstopA (by decide) (by decide)
  obtain ⟨qa, fa⟩ := kvs_get_of_log example_K _ example_kvs_part pmemA
    (example_kvs_run example_pm [kvs_op.set [0x61] [0x6F, 0x6E, 0x65]]).2.2
    [kvs_op.set [0x61] [0x6F, 0x6E, 0x65]] [0x61] [0, 0, 0, 0, 0, 0, 0, 0] 8
    haA.part haA.magic_lt haA.mutex hA haA.log haA.valid haA.fits hstopA (by decide) (by decide)
  have hsb : kvs_get_spec (kvs_map_spec [kvs_op.set [0x61] [0x6F, 0x6E, 0x65]] [0x62])
      [0, 0, 0, 0, 0, 0, 0, 0] 8 = (ESP_ERR_NOT_FOUND, [0, 0, 0, 0, 0, 0, 0, 0], 8) := by decide
  have hsa : kvs_get_spec (kvs_map_spec [kvs_op.set [0x61] [0x6F, 0x6E, 0x65]] [0x61])
      [0, 0, 0, 0, 0, 0, 0, 0] 8 = (ESP_OK, [0x6F, 0x6E, 0x65, 0, 0, 0, 0, 0], 3) := by decide
  rw [hsb] at fb
  rw [hsa] at fa
  rw [fb] at gb1
  rw [fa] at ga1
  have b1 : rb.1 = ESP_ERR_NOT_FOUND := (Prod.mk.inj gb1).1.symm
  have b2 : rb.2.1 = [0, 0, 0, 0, 0, 0, 0, 0] := (Prod.mk.inj (Prod.mk.inj gb1).2).1.symm
  have b3 : rb.2.2 = 8 := (Prod.mk.inj (Prod.mk.inj (Prod.mk.inj gb1).2).2).1.symm
  have a1 : ra.1 = ESP_OK := (Prod.mk.inj ga1).1.symm
  have a2 : ra.2.1 = [0x6F, 0x6E, 0x65, 0, 0, 0, 0, 0] :=
    (Prod.mk.inj (Prod.mk.inj ga1).2).1.symm
  have a3 : ra.2.2 = 3 := (Prod.mk.inj (Prod.mk.inj (Prod.mk.inj ga1).2).2).1.symm
  rw [b1, b2, b3] at gb2
  rw [a1, a2, a3] at ga2
  exact ⟨pm3, pb2, pa2, hi3, hwo2, gb2, ga2⟩

/-! ## Key/value store: a value whose record survives a flipped length byte -/

theorem crafted_o_split : List.replicate 123 0x6F = List.replicate 32 0x6F ++
    (List.replicate 32 0x6F ++ (List.replicate 32 0x6F ++ List.replicate 27 0x6F)) := by
  rfl

set_option maxRecDepth 100000 in
theorem crafted_crc_full_head : fram_crc32_le 0 ([77, 83, 86, 75, 0, 0, 0, 0, 1, 0, 128, 0, 0, 0, 0, 0]) = 4014440589 := by
  rw [fram_crc32_le_eq]
  simp [List.replicate, List.foldl, crc32_byte, crc32_bit, U32]

set_option maxRecDepth 100000 in
theorem crafted_crc_full_key : fram_crc32_le 4014440589 ([97]) = 2840848851 := by
  rw [fram_crc32_le_eq]
  simp [List.replicate, List.foldl, crc32_byte, crc32_bit, U32]

set_option maxRecDepth 100000 in
theorem crafted_crc_full_v4 : fram_crc32_le 2840848851 ([237, 136, 103, 175]) = 195590215 := by
  rw [fram_crc32_le_eq]
  simp [List.replicate, List.foldl, crc32_byte, crc32_bit, U32]

set_option maxRecDepth 100000 in
theorem crafted_crc_full_o1 : fram_crc32_le 195590215 (List.replicate 32 0x6F) = 3266495492 := by
  rw [fram_crc32_le_eq]
  simp [List.replicate, List.foldl, crc32_byte, crc32_bit, U32]

set_option maxRecDepth 100000 in
theorem crafted_crc_full_o2 : fram_crc32_le 3266495492 (List.replicate 32 0x6F) = 2751056330 := by
  rw [fram_crc32_le_eq]
  simp [List.replicate, List.foldl, crc32_byte, crc32_bit, U32]

set_option maxRecDepth 100000 in
theorem crafted_crc_full_o3 : fram_crc32_le 2751056330 (List.replicate 32 0x6F) = 1930108344 := by
  rw [fram_crc32_le_eq]
  simp [List.replicate, List.foldl, crc32_byte, crc32_bit, U32]

set_option maxRecDepth 100000 in
theorem crafted_crc_full_o4 : fram_crc32_le 1930108344 (List.replicate 27 0x6F) = 2393308413 := by
  rw [fram_crc32_le_eq]
  simp [List.replicate, List.foldl, crc32_byte, crc32_bit, U32]

set_option maxRecDepth 100000 in
theorem crafted_crc_full_end : fram_crc32_le 2393308413 ([165]) = 1698594618 := by
  rw [fram_crc32_le_eq]
  simp [List.replicate, List.foldl, crc32_byte, crc32_bit, U32]

theorem crafted_crc_full_value :
    fram_crc32_le 2840848851 ([237, 136, 103, 175] ++ (List.replicate 123 0x6F ++ [165])) = 1698594618 := by
  rw [crafted_o_split]
  simp only [← fram_crc32_le_append]
  rw [crafted_crc_full_v4, crafted_crc_full_o1, crafted_crc_full_o2, crafted_crc_full_o3, crafted_crc_full_o4, crafted_crc_full_end]

set_option maxRecDepth 100000 in
theorem crafted_crc_short_head : fram_crc32_le 0 ([77, 83, 86, 75, 0, 0, 0, 0, 1, 0, 127, 0, 0, 0, 0, 0]) = 193145665 := by
  rw [fram_crc32_le_eq]
  simp [List.replicate, List.foldl, crc32_byte, crc32_bit, U32]

set_option maxRecDepth 100000 in
theorem crafted_crc_short_key : fram_crc32_le 193145665 ([97]) = 996516835 := by
  rw [fram_crc32_le_eq]
  simp [List.replicate, List.foldl, crc32_byte, crc32_bit, U32]

set_option maxRecDepth 100000 in
theorem crafted_crc_short_v4 : fram_crc32_le 996516835 ([237, 136, 103, 175]) = 294906861 := by
  rw [fram_crc32_le_eq]
  simp [List.replicate, List.foldl, crc32_byte, crc32_bit, U32]

set_option maxRecDepth 100000 in
theorem crafted_crc_short_o1 : fram_crc32_le 294906861 (List.replicate 32 0x6F) = 696522696 := by
  rw [fram_crc32_le_eq]
  simp [List.replicate, List.foldl, crc32_byte, crc32_bit, U32]

set_option maxRecDepth 100000 in
theorem crafted_crc_short_o2 : fram_crc32_le 696522696 (List.replicate 32 0x6F) = 472263095 := by
  rw [fram_crc32_le_eq]
  simp [List.replicate, List.foldl, crc32_byte, crc32_bit, U32]

set_option maxRecDepth 100000 in
theorem crafted_crc_short_o3 : fram_crc32_le 472263095 (List.replicate 32 0x6F) = 1634720459 := by
  rw [fram_crc32_le_eq]
  simp [List.replicate, List.foldl, crc32_byte, crc32_bit, U32]

set_option maxRecDepth 100000 in
theorem crafted_crc_short_o4 : fram_crc32_le 1634720459 (List.replicate 27 0x6F) = 1698594618 := by
  rw [fram_crc32_le_eq]
  simp [List.replicate, List.foldl, crc32_byte, crc32_bit, U32]

theorem crafted_crc_short_value :
    fram_crc32_le 996516835 ([237, 136, 103, 175] ++ List.replicate 123 0x6F) = 1698594618 := by
  rw [crafted_o_split]
  simp only [← fram_crc32_le_append]
  rw [crafted_crc_short_v4, crafted_crc_short_o1, crafted_crc_short_o2, crafted_crc_short_o3, crafted_crc_short_o4]

theorem kvs_header_for_head_bytes (magic seq : Nat) (op : kvs_op) :
    (kvs_header_for magic seq op).head_bytes
      = le_bytes 4 magic ++ (le_bytes 4 seq ++ (le_bytes 2 op.key.length ++
        (le_bytes 2 op.value.length ++ (le_bytes 1 op.flags ++ le_bytes 3 0)))) := rfl

theorem crafted_set_key : example_crafted_set.key = [0x61] := rfl

theorem crafted_set_value : example_crafted_set.value
    = [0xED, 0x88, 0x67, 0xAF] ++ (List.replicate 123 0x6F ++ [0xA5]) := rfl

theorem crafted_short_key : example_crafted_short.key = [0x61] := rfl

theorem crafted_short_value : example_crafted_short.value
    = [0xED, 0x88, 0x67, 0xAF] ++ List.replicate 123 0x6F := rfl

theorem crafted_full_length :
    ([0xED, 0x88, 0x67, 0xAF] ++ (List.replicate 123 0x6F ++ [0xA5]) : List Nat).length
      = 128 := by
  simp

theorem crafted_short_length :
    ([0xED, 0x88, 0x67, 0xAF] ++ List.replicate 123 0x6F : List Nat).length = 127 := by
  simp

theorem crafted_head_full : (kvs_header_for 0x4B56534D 0 example_crafted_set).head_bytes
    = [77, 83, 86, 75, 0, 0, 0, 0, 1, 0, 128, 0, 0, 0, 0, 0] := by
  rw [kvs_header_for_head_bytes, crafted_set_key, crafted_set_value, crafted_full_length]
  rfl

theorem crafted_head_short : (kvs_header_for 0x4B56534D 0 example_crafted_short).head_bytes
    = [77, 83, 86, 75, 0, 0, 0, 0, 1, 0, 127, 0, 0, 0, 0, 0] := by
  rw [kvs_header_for_head_bytes, crafted_short_key, crafted_short_value, crafted_short_length]
  rfl

/-- The checksum stored in the record of `example_crafted_set`. -/
theorem crafted_crc_full : (kvs_header_for 0x4B56534D 0 example_crafted_set).crc32
    = 1698594618 := by
  rw [kvs_header_for_crc, crafted_head_full]
  show fram_crc32_le (fram_crc32_le (fram_crc32_le 0
    [77, 83, 86, 75, 0, 0, 0, 0, 1, 0, 128, 0, 0, 0, 0, 0]) [97])
    ([237, 136, 103, 175] ++ (List.replicate 123 0x6F ++ [165])) = 1698594618
  rw [crafted_crc_full_head, crafted_crc_full_key, crafted_crc_full_value]

/-- The record of `example_crafted_short` has the same checksum. -/
theorem crafted_crc_short : (kvs_header_for 0x4B56534D 0 example_crafted_short).crc32
    = 1698594618 := by
  rw [kvs_header_for_crc, crafted_head_short]
  show fram_crc32_le (fram_crc32_le (fram_crc32_le 0
    [77, 83, 86, 75, 0, 0, 0, 0, 1, 0, 127, 0, 0, 0, 0, 0]) [97])
    ([237, 136, 103, 175] ++ List.replicate 123 0x6F) = 1698594618
  rw [crafted_crc_short_head, crafted_crc_short_key, crafted_crc_short_value]

theorem crafted_bytes_full : (kvs_header_for 0x4B56534D 0 example_crafted_set).to_bytes
    = [77, 83, 86, 75, 0, 0, 0, 0, 1, 0, 128, 0, 0, 0, 0, 0, 58, 127, 62, 101] := by
  unfold fram_kvs_header_t.to_bytes
  rw [crafted_head_full, crafted_crc_full]
  rfl

theorem crafted_bytes_short : (kvs_header_for 0x4B56534D 0 example_crafted_short).to_bytes
    = [77, 83, 86, 75, 0, 0, 0, 0, 1, 0, 127, 0, 0, 0, 0, 0, 58, 127, 62, 101] := by
  unfold fram_kvs_header_t.to_bytes
  rw [crafted_head_short, crafted_crc_short]
  rfl

theorem mem_read_eq_of_getD (m : Nat → Nat) (a n : Nat) (l : List Nat) (hl : l.length = n)
    (h : ∀ i, i < n → m (a + i) = l.getD i 0) : mem_read m a n = l := by
  apply List.ext_getElem (by rw [mem_read_length, hl])
  intro i h1 h2
  rw [mem_read_length] at h1
  have e1 := mem_read_getD m a n i h1
  rw [h i h1] at e1
  rw [List.getD_eq_getElem?_getD, List.getD_eq_getElem?_getD,
    List.getElem?_eq_getElem (by rw [mem_read_length]; exact h1),
    List.getElem?_eq_getElem h2] at e1
  exact e1

/-- A record put together from its four parts. -/
theorem krec_of_parts (m : Nat → Nat) (off magic seq : Nat) (op : kvs_op)
    (h1 : mem_read m off 20 = (kvs_header_for magic seq op).to_bytes)
    (h2 : mem_read m (off + 20) op.key.length = op.key)
    (h3 : mem_read m (off + 20 + op.key.length) op.value.length = op.value)
    (h4 : m (off + 20 + op.key.length + op.value.length) = FRAM_KVS_COMMIT) :
    KRec m off magic seq op := by
  unfold KRec
  rw [kvs_op_size_eq, mem_read_add, mem_read_add, mem_read_add, mem_read_one, h1,
    show off + (20 + op.key.length) = off + 20 + op.key.length by omega,
    show off + (20 + op.key.length + op.value.length)
      = off + 20 + op.key.length + op.value.length by omega, h2, h3, h4]
  simp only [List.append_assoc]

/-- The record of `example_crafted_set` with the low byte of its `value_len`
complemented is the committed record of `example_crafted_short`. -/
theorem crafted_rec_flipped (pmem : Nat → Nat)
    (hrec : KRec pmem 0 0x4B56534D 0 example_crafted_set) :
    KRec (mem_write pmem 10 [pmem 10 ^^^ 255]) 0 0x4B56534D 0 example_crafted_short ∧
    pmem 149 = 0xA5 := by
  unfold KRec at hrec
  rw [kvs_op_size_eq] at hrec
  obtain ⟨i1, i2, i3, i4⟩ := kvs_image_parts pmem 0 _ example_crafted_set.key
    example_crafted_set.value FRAM_KVS_COMMIT (kvs_to_bytes_length _) hrec
  rw [crafted_bytes_full] at i1
  rw [crafted_set_key] at i2 i3 i4
  rw [crafted_set_value, crafted_full_length] at i3 i4
  have i2 : mem_read pmem 20 1 = [0x61] := i2
  have i3 : mem_read pmem 21 (127 + 1)
      = ([0xED, 0x88, 0x67, 0xAF] ++ List.replicate 123 0x6F) ++ [0xA5] := by
    rw [List.append_assoc]
    exact i3
  have i4 : pmem 149 = 0xA5 := i4
  rw [mem_read_add, mem_read_one] at i3
  obtain ⟨i5, i6⟩ := List.append_inj i3 (by rw [mem_read_length, crafted_short_length])
  have i7 : pmem 148 = 0xA5 := List.head_eq_of_cons_eq i6
  have hb : ∀ i, i < 20 → pmem i
      = [77, 83, 86, 75, 0, 0, 0, 0, 1, 0, 128, 0, 0, 0, 0, 0, 58, 127, 62, 101].getD i 0 := by
    intro i hi
    rw [← i1, mem_read_getD _ _ _ _ hi, Nat.zero_add]
  obtain ⟨m, hmdef⟩ : ∃ m, m = mem_write pmem 10 [pmem 10 ^^^ 255] := ⟨_, rfl⟩
  rw [← hmdef]
  have hout : ∀ a, a ≠ 10 → m a = pmem a := by
    intro a ha
    rw [hmdef]
    exact mem_write_outside _ _ _ _ (by simp only [List.length_singleton]; omega)
  have hin : m 10 = 127 := by
    rw [hmdef]
    have := mem_write_inside pmem 10 [pmem 10 ^^^ 255] 0 (Nat.zero_lt_one)
    rw [Nat.add_zero] at this
    rw [this, hb 10 (by decide)]
    rfl
  refine ⟨krec_of_parts m 0 _ 0 example_crafted_short ?_ ?_ ?_ ?_, i4⟩
  · rw [crafted_bytes_short]
    refine mem_read_eq_of_getD m 0 20
      [77, 83, 86, 75, 0, 0, 0, 0, 1, 0, 127, 0, 0, 0, 0, 0, 58, 127, 62, 101] rfl ?_
    intro i hi
    rw [Nat.zero_add]
    by_cases c : i = 10
    · rw [c, hin]
      rfl
    · rw [hout i c, hb i hi]
      interval_cases i <;> first | rfl | exact absurd rfl c
  · rw [crafted_short_key]
    show mem_read m 20 1 = [0x61]
    rw [mem_read_congr m pmem 20 1 (fun i hi => hout _ (by omega))]
    exact i2
  · rw [crafted_short_key, crafted_short_value, crafted_short_length]
    show mem_read m 21 127 = [0xED, 0x88, 0x67, 0xAF] ++ List.replicate 123 0x6F
    rw [mem_read_congr m pmem 21 127 (fun i hi => hout _ (by omega))]
    exact i5
  · rw [crafted_short_key, crafted_short_value, crafted_short_length]
    show m 148 = 0xA5
    rw [hout 148 (by decide)]
    exact i7

/-- No record is accepted at an offset that holds the byte `0xA5` followed by
erased bytes, by a store whose magic is not `0xFFFFFFA5`. -/
theorem kvs_accept_commit_erased (K : Kconfig) (kvs : fram_kvs_t) (p : fram_partition_t)
    (m : Nat → Nat) (off : Nat) (hm : kvs.magic ≠ 4294967205) (h0 : m off = 0xA5)
    (he : ∀ a, off < a → a < p.size → m a = 0xFF) :
    kvs_accept K kvs p m off = none ∧
    (off + 21 ≤ p.size →
      (fram_kvs_header_of_bytes (mem_read m off 20)).value_len < 65536) := by
  constructor
  · cases hacc : kvs_accept K kvs p m off with
    | none => rfl
    | some h =>
      exfalso
      obtain ⟨e, e2, e3, _⟩ := kvs_accept_some K kvs p m off h hacc
      obtain ⟨k1, _⟩ := kvs_valid_key_len K kvs h e3
      rw [e, kvs_read_magic, h0, he _ (by omega) (by omega), he _ (by omega) (by omega),
        he _ (by omega) (by omega)] at k1
      exact hm k1.symm
  · intro hfit
    rw [(kvs_read_lens m off).2, he _ (by omega) (by omega), he _ (by omega) (by omega)]
    decide

theorem crafted_set_size : example_crafted_set.size = 150 := by
  rw [kvs_op_size_eq, crafted_set_key, crafted_set_value, crafted_full_length]
  rfl

theorem crafted_short_size : example_crafted_short.size = 149 := by
  rw [kvs_op_size_eq, crafted_short_key, crafted_short_value, crafted_short_length]
  rfl

theorem crafted_set_log_size : kvs_log_size [example_crafted_set] = 150 := by
  rw [kvs_log_size_cons, kvs_log_size_nil, crafted_set_size]

theorem crafted_short_log_size : kvs_log_size [example_crafted_short] = 149 := by
  rw [kvs_log_size_cons, kvs_log_size_nil, crafted_short_size]

theorem crafted_set_valid (op : kvs_op) (ho : op ∈ [example_crafted_set]) :
    op.valid example_K := by
  have h : op = example_crafted_set := by simpa using ho
  subst h
  unfold kvs_op.valid
  rw [crafted_set_key, crafted_set_value, crafted_full_length]
  exact ⟨by decide, by decide, by decide, by decide⟩

theorem crafted_short_valid (op : kvs_op) (ho : op ∈ [example_crafted_short]) :
    op.valid example_K := by
  have h : op = example_crafted_short := by simpa using ho
  subst h
  unfold kvs_op.valid
  rw [crafted_short_key, crafted_short_value, crafted_short_length]
  exact ⟨by decide, by decide, by decide, by decide⟩

theorem crafted_short_spec :
    kvs_get_spec (kvs_map_spec [example_crafted_short] [0x61]) (List.replicate 127 0) 127
      = (ESP_OK, [0xED, 0x88, 0x67, 0xAF] ++ List.replicate 123 0x6F, 127) := by
  have e : kvs_map_spec [example_crafted_short] [0x61]
      = some ([0xED, 0x88, 0x67, 0xAF] ++ List.replicate 123 0x6F) := rfl
  rw [e]
  unfold kvs_get_spec
  simp only [crafted_short_length, Nat.lt_irrefl, if_false]
  rw [List.drop_of_length_le (by rw [List.length_replicate]), List.append_nil]

/-- What `fram_kvs_init` and `fram_kvs_get("a")` make of the partition that
holds the record of `example_crafted_set` with byte 10 complemented. -/
theorem crafted_flip_facts :
    ∃ pm3 pm4, fram_kvs_init example_K example_crafted_pm example_kvs_cfg
        = (ESP_OK, { part := some example_kvs_part, magic := example_kvs_cfg.magic,
                     write_offset := 149, next_seq := 1, ready := true,
                     mutex := SemaphoreHandle_t.free }, pm3) ∧
      fram_kvs_get example_K { part := some example_kvs_part, magic := example_kvs_cfg.magic,
                               write_offset := 149, next_seq := 1, ready := true,
                               mutex := SemaphoreHandle_t.free } pm3 [0x61]
          (List.replicate 127 0) 127
        = (ESP_OK, [0xED, 0x88, 0x67, 0xAF] ++ List.replicate 123 0x6F, 127, pm4) := by
  obtain ⟨pmem2, h2, he2, hm2, hfind2⟩ := example_kvs_run_exact [example_crafted_set]
    crafted_set_valid (by rw [crafted_set_log_size]; decide)
  have ha2 := he2.after
  have hrec : KRec pmem2 0 0x4B56534D 0 example_crafted_set := by
    have := he2.log.1
    rw [hm2] at this
    exact this
  obtain ⟨hrecS, h149⟩ := crafted_rec_flipped pmem2 hrec
  have hF : PmOK example_crafted_pm example_kvs_part (mem_write pmem2 10 [pmem2 10 ^^^ 255]) :=
    kvs_flip_ok _ example_kvs_part pmem2 10 h2 (by decide)
  obtain ⟨m, hmdef⟩ : ∃ m, m = mem_write pmem2 10 [pmem2 10 ^^^ 255] := ⟨_, rfl⟩
  rw [← hmdef] at hF hrecS
  have hout : ∀ a, a ≠ 10 → m a = pmem2 a := by
    intro a ha
    rw [hmdef]
    exact mem_write_outside _ _ _ _ (by simp only [List.length_singleton]; omega)
  have herased : ∀ a, 149 < a → a < example_kvs_part.size → m a = 0xFF := by
    intro a h1 h3
    rw [hout a (by omega)]
    exact ha2.erased a (by rw [crafted_set_log_size]; omega) h3
  have h0 : m 149 = 0xA5 := by
    rw [hout 149 (by decide)]
    exact h149
  have hfind : fram_pm_find example_crafted_pm example_kvs_cfg.partition_name
      = some example_kvs_part := by
    show fram_pm_find (kvs_flip_byte (example_kvs_run example_pm [example_crafted_set]).2.2
      example_kvs_part 10) example_kvs_cfg.partition_name = some example_kvs_part
    rw [fram_pm_find_same _ _ _ (kvs_flip_same _ example_kvs_part 10)]
    exact hfind2
  have hlog : KLogSeq m example_kvs_cfg.magic 0 0 [example_crafted_short] := ⟨hrecS, trivial⟩
  obtain ⟨hacc, hvl⟩ := kvs_accept_commit_erased example_K
    (example_kvs_run example_pm [example_crafted_set]).2.1 example_kvs_part m 149
    (by rw [hm2]; decide) h0 herased
  obtain ⟨pm3, hi3, hok3⟩ := kvs_init_of_log example_K example_crafted_pm example_kvs_part m
    example_kvs_cfg [example_crafted_short] _ (by decide) hF hfind
    (by rw [crafted_short_log_size]; decide) hlog crafted_short_valid
    (by rw [crafted_short_log_size]; decide) hm2
    (by rw [crafted_short_log_size]; exact hacc)
    (by rw [crafted_short_log_size]; exact hvl)
  rw [crafted_short_log_size] at hi3
  obtain ⟨kvs3, hk3⟩ : ∃ kvs3 : fram_kvs_t, kvs3 =
      ({ part := some example_kvs_part, magic := example_kvs_cfg.magic,
         write_offset := 149, next_seq := 1, ready := true,
         mutex := SemaphoreHandle_t.free } : fram_kvs_t) := ⟨_, rfl⟩
  have hi3 : fram_kvs_init example_K example_crafted_pm example_kvs_cfg = (ESP_OK, kvs3, pm3) := by
    rw [hk3]
    exact hi3
  rw [← hk3]
  have hp3 : kvs3.part = some example_kvs_part := by rw [hk3]
  have hm3 : kvs3.magic = example_kvs_cfg.magic := by rw [hk3]
  have hx3 : kvs3.mutex = SemaphoreHandle_t.free := by rw [hk3]
  obtain ⟨hacc3, hvl3⟩ := kvs_accept_commit_erased example_K kvs3 example_kvs_part m 149
    (by rw [hm3]; decide) h0 herased
  have hstop : KStop example_K kvs3 example_kvs_part m (kvs_log_size [example_crafted_short]) := by
    rw [crafted_short_log_size]
    exact kvs_stop_of_accept example_K _ example_kvs_part m 149 hp3 (by decide) hvl3 hacc3
  obtain ⟨pm4, g4⟩ := kvs_get_of_log example_K kvs3 example_kvs_part m pm3
    [example_crafted_short] [0x61] (List.replicate 127 0) 127 hp3 (by rw [hm3]; decide) hx3 hok3
    (by rw [hm3]; exact klogseq_log m _ [example_crafted_short] 0 0 (by decide) hlog)
    crafted_short_valid (by rw [crafted_short_log_size]; decide) hstop (by decide) (by decide)
  rw [crafted_short_spec] at g4
  exact ⟨pm3, pm4, hi3, g4⟩

/-- Counterexample for C16: on the erased `"kvs"` partition of the tests,
`fram_kvs_init` and `set("a", example_crafted_value, 128)` return `ESP_OK` and
leave one record of 150 bytes at offset 0. With byte 10 of that record (the
low byte of `value_len`, `0x80`) complemented, the header says 127 value
bytes, byte 127 of the value (`0xA5`) stands where the commit byte is
expected, and the checksum over the shorter record is the stored one. Then
`fram_kvs_init` returns `ESP_OK` with `write_offset` 149, not 0, and
`fram_kvs_get("a")` returns `ESP_OK` with the first 127 bytes of the value,
where a store without the record has `write_offset` 0. -/
theorem kvs_torn_record_truncated_counterexample :
    (example_kvs_run example_pm []).2.1.write_offset = 0 ∧
    (example_kvs_run example_pm [example_crafted_set]).1 = ESP_OK ∧
    (example_kvs_run example_pm [example_crafted_set]).2.1.write_offset = 150 ∧
    (fram_kvs_init example_K example_crafted_pm example_kvs_cfg).1 = ESP_OK ∧
    (fram_kvs_init example_K example_crafted_pm example_kvs_cfg).2.1.write_offset = 149 ∧
    ∃ pm4, fram_kvs_get example_K
        (fram_kvs_init example_K example_crafted_pm example_kvs_cfg).2.1
        (fram_kvs_init example_K example_crafted_pm example_kvs_cfg).2.2 [0x61]
        (List.replicate 127 0) 127
      = (ESP_OK, [0xED, 0x88, 0x67, 0xAF] ++ List.replicate 123 0x6F, 127, pm4) := by
  obtain ⟨_, _, he0, _, _⟩ := example_kvs_run_exact [] (fun _ ho => absurd ho (List.not_mem_nil _))
    (by decide)
  obtain ⟨_, hrun, _⟩ := example_kvs_run_ok example_pm example_kvs_part [example_crafted_set]
    example_pm_kvs_ok example_kvs_find crafted_set_valid
    (by rw [crafted_set_log_size]; decide)
  obtain ⟨_, _, he2, _, _⟩ := example_kvs_run_exact [example_crafted_set]
    crafted_set_valid (by rw [crafted_set_log_size]; decide)
  obtain ⟨pm3, pm4, hi3, g4⟩ := crafted_flip_facts
  refine ⟨he0.after.offset, ?_, ?_, ?_, ?_, pm4, ?_⟩
  · rw [hrun]
  · rw [he2.after.offset, crafted_set_log_size]
  · rw [hi3]
  · rw [hi3]
  · rw [hi3]
    exact g4

/-! ## Device health -/

theorem dev_record_error_fields (d : fram_dev_t) :
    (fram_dev_record_error d).error_threshold = d.error_threshold ∧
    (fram_dev_record_error d).consecutive_errors = (d.consecutive_errors + 1) % U32 ∧
    (fram_dev_record_error d).healthy
      = if d.error_threshold ≤ (d.consecutive_errors + 1) % U32 then false else d.healthy := by
  unfold fram_dev_record_error
  simp only [ge_iff_le]
  split_ifs <;> exact ⟨rfl, rfl, rfl⟩

/-- A failed lock or HAL transfer counts one error on top of the count. -/
theorem dev_outcome_error (d d0 : fram_dev_t) (h1 : d0.error_threshold = d.error_threshold)
    (h2 : d0.consecutive_errors = d.consecutive_errors) (h3 : d0.healthy = d.healthy) :
    DevOutcome d (fram_dev_record_error d0) := by
  obtain ⟨e1, e2, e3⟩ := dev_record_error_fields d0
  refine ⟨e1.trans h1, Or.inr (Or.inr (Or.inl ⟨?_, ?_⟩))⟩
  · rw [e2, h2]
  · rw [e3, e2, h1, h3]

/-- The outcome of a call that starts after a successful transfer, seen from
the device before that transfer. -/
theorem dev_outcome_after_success (d d0 d1 : fram_dev_t) (h : DevOutcome d0 d1)
    (h1 : d0.error_threshold = d.error_threshold) (h2 : d0.consecutive_errors = 0)
    (h3 : d0.healthy = d.healthy) : DevOutcome d d1 := by
  obtain ⟨t, c⟩ := h
  refine ⟨t.trans h1, ?_⟩
  rw [h1, h2, h3] at c
  rcases c with ⟨a, b⟩ | ⟨a, b⟩ | ⟨a, b⟩ | ⟨a, b⟩
  · exact Or.inr (Or.inl ⟨a, b⟩)
  · exact Or.inr (Or.inl ⟨a, b⟩)
  · exact Or.inr (Or.inr (Or.inr ⟨by rw [a]; rfl, b⟩))
  · exact Or.inr (Or.inr (Or.inr ⟨a, b⟩))

theorem fram_dev_read_loop_outcome (mt : Nat) :
    ∀ (fuel : Nat) (dev : fram_dev_t) (addr remaining : Nat) (out : List Nat),
      DevOutcome dev (fram_dev_read_loop fuel dev addr remaining mt out).2.2 := by
  intro fuel
  induction fuel with
  | zero =>
    intro dev addr remaining out
    unfold fram_dev_read_loop
    split_ifs <;> exact ⟨rfl, Or.inl ⟨rfl, rfl⟩⟩
  | succ fuel ih =>
    intro dev addr remaining out
    unfold fram_dev_read_loop
    simp only
    generalize (if remaining > mt then mt else remaining) = chunk
    split_ifs with h1 h2
    · exact ⟨rfl, Or.inl ⟨rfl, rfl⟩⟩
    · exact dev_outcome_error dev _ rfl rfl rfl
    · exact dev_outcome_after_success dev _ _ (ih _ _ _ _) rfl rfl rfl

theorem fram_dev_write_loop_outcome (mt : Nat) :
    ∀ (fuel : Nat) (dev : fram_dev_t) (addr : Nat) (data : List Nat),
      DevOutcome dev (fram_dev_write_loop fuel dev addr data mt).2 := by
  intro fuel
  induction fuel with
  | zero =>
    intro dev addr data
    unfold fram_dev_write_loop
    split_ifs <;> exact ⟨rfl, Or.inl ⟨rfl, rfl⟩⟩
  | succ fuel ih =>
    intro dev addr data
    unfold fram_dev_write_loop
    simp only
    generalize (if data.length > mt then mt else data.length) = chunk
    split_ifs with h1 h2
    · exact ⟨rfl, Or.inl ⟨rfl, rfl⟩⟩
    · exact dev_outcome_error dev _ rfl rfl rfl
    · exact dev_outcome_after_success dev _ _ (ih _ _ _) rfl rfl rfl

/-- What `fram_dev_read` does to the health fields. -/
theorem fram_dev_read_outcome (dev : fram_dev_t) (offset len : Nat) :
    DevOutcome dev (fram_dev_read dev offset len).2.2 := by
  unfold fram_dev_read
  split_ifs <;>
    first
    | exact ⟨rfl, Or.inl ⟨rfl, rfl⟩⟩
    | exact dev_outcome_error dev dev rfl rfl rfl
    | exact fram_dev_read_loop_outcome _ _ _ _ _ _

/-- What `fram_dev_write` does to the health fields. -/
theorem fram_dev_write_outcome (dev : fram_dev_t) (offset : Nat) (data : List Nat) :
    DevOutcome dev (fram_dev_write dev offset data).2 := by
  unfold fram_dev_write
  split_ifs <;>
    first
    | exact ⟨rfl, Or.inl ⟨rfl, rfl⟩⟩
    | exact dev_outcome_error dev dev rfl rfl rfl
    | exact fram_dev_write_loop_outcome _ _ _ _ _

theorem dev_step_enter_fields (dev : fram_dev_t) (s : dev_step) :
    (dev_step_enter dev s).error_threshold = dev.error_threshold ∧
    (dev_step_enter dev s).consecutive_errors = dev.consecutive_errors ∧
    (dev_step_enter dev s).healthy = dev.healthy ∧
    (dev_step_enter dev s).hal.size_bytes = dev.hal.size_bytes ∧
    (dev_step_enter dev s).hal.max_transfer = dev.hal.max_transfer := by
  unfold dev_step_enter
  cases s.arm <;> exact ⟨rfl, rfl, rfl, rfl, rfl⟩

/-- What one call of a sequence does to the health fields. -/
theorem dev_step_outcome (dev : fram_dev_t) (s : dev_step) :
    DevOutcome dev (dev_step_apply dev s).2 := by
  obtain ⟨e1, e2, e3, _⟩ := dev_step_enter_fields dev s
  have key : ∀ d1, DevOutcome (dev_step_enter dev s) d1 → DevOutcome dev d1 := by
    intro d1 h
    unfold DevOutcome at h ⊢
    rw [e1, e2, e3] at h
    exact h
  unfold dev_step_apply
  cases s.call with
  | read offset len => exact key _ (fram_dev_read_outcome _ offset len)
  | write offset data => exact key _ (fram_dev_write_outcome _ offset data)

theorem fram_dev_read_loop_done (fuel : Nat) (dev : fram_dev_t) (addr mt : Nat)
    (out : List Nat) : (fram_dev_read_loop fuel dev addr 0 mt out).1 = ESP_OK := by
  cases fuel <;> unfold fram_dev_read_loop <;> simp

theorem fram_dev_write_loop_done (fuel : Nat) (dev : fram_dev_t) (addr mt : Nat)
    (data : List Nat) (h : data.length = 0) :
    (fram_dev_write_loop fuel dev addr data mt).1 = ESP_OK := by
  cases fuel <;> unfold fram_dev_write_loop <;> simp [h]

/-- A read moved in one HAL transfer that does not return `ESP_OK` has
counted one error on top of the count. -/
theorem fram_dev_read_loop_single (fuel : Nat) (dev : fram_dev_t) (addr remaining mt : Nat)
    (out : List Nat) (hf : fuel ≠ 0) (h1 : remaining ≠ 0) (h2 : remaining ≤ mt)
    (hne : (fram_dev_read_loop fuel dev addr remaining mt out).1 ≠ ESP_OK) :
    (fram_dev_read_loop fuel dev addr remaining mt out).2.2
      = fram_dev_record_error
          { dev with hal := (fram_hal_mock_read dev.hal addr remaining).2.2 } := by
  obtain ⟨n, rfl⟩ : ∃ n, fuel = n + 1 := ⟨fuel - 1, by omega⟩
  rw [fram_dev_read_loop] at hne ⊢
  simp only [if_neg h1, if_neg (Nat.not_lt.mpr h2)] at hne ⊢
  by_cases c : (fram_hal_mock_read dev.hal addr remaining).1 ≠ ESP_OK
  · rw [if_pos c]
  · rw [if_neg c, Nat.sub_self] at hne
    exact absurd (fram_dev_read_loop_done _ _ _ _ _) hne

/-- A write moved in one HAL transfer that does not return `ESP_OK` has
counted one error on top of the count. -/
theorem fram_dev_write_loop_single (fuel : Nat) (dev : fram_dev_t) (addr mt : Nat)
    (data : List Nat) (hf : fuel ≠ 0) (h1 : data.length ≠ 0) (h2 : data.length ≤ mt)
    (hne : (fram_dev_write_loop fuel dev addr data mt).1 ≠ ESP_OK) :
    (fram_dev_write_loop fuel dev addr data mt).2
      = fram_dev_record_error
          { dev with hal := (fram_hal_mock_write dev.hal addr (data.take data.length)).2 } := by
  obtain ⟨n, rfl⟩ : ∃ n, fuel = n + 1 := ⟨fuel - 1, by omega⟩
  rw [fram_dev_write_loop] at hne ⊢
  simp only [if_neg h1, if_neg (Nat.not_lt.mpr h2)] at hne ⊢
  by_cases c : (fram_hal_mock_write dev.hal addr (data.take data.length)).1 ≠ ESP_OK
  · rw [if_pos c]
  · rw [if_neg c] at hne
    exact absurd (fram_dev_write_loop_done _ _ _ _ _ (by simp)) hne

theorem dev_transfer_limit (dev : fram_dev_t) (len : Nat) (h1 : len ≤ dev.hal.size_bytes)
    (h2 : dev.hal.max_transfer = 0 ∨ len ≤ dev.hal.max_transfer) :
    len ≤ (if dev.hal.max_transfer ≠ 0 then dev.hal.max_transfer else dev.hal.size_bytes) := by
  split_ifs with c
  · exact h2.elim (fun e => absurd e c) id
  · exact h1

/-- A call that passes the range check, is moved in one HAL transfer and does
not return `ESP_OK` counts one error on top of the count. -/
theorem dev_step_single_fail (dev : fram_dev_t) (s : dev_step) (h : dev_step_single dev s)
    (hne : (dev_step_apply dev s).1 ≠ ESP_OK) :
    (dev_step_apply dev s).2.consecutive_errors = (dev.consecutive_errors + 1) % U32 := by
  obtain ⟨e1, e2, e3, e4, e5⟩ := dev_step_enter_fields dev s
  obtain ⟨k1, k2, k3, k4, k5, k6⟩ := h
  rw [← e4] at k2 k3 k4 k5
  rw [← e5] at k6
  have hlim := dev_transfer_limit (dev_step_enter dev s) s.call.len k4 k6
  have hrange : ¬ ((dev_step_enter dev s).hal.size_bytes = 0 ∨
      s.call.offset > (dev_step_enter dev s).hal.size_bytes ∨
      s.call.len > (dev_step_enter dev s).hal.size_bytes ∨
      s.call.offset > (dev_step_enter dev s).hal.size_bytes - s.call.len) := by
    intro c
    rcases c with c | c | c | c
    · exact k2 c
    · exact absurd k3 (Nat.not_le.mpr c)
    · exact absurd k4 (Nat.not_le.mpr c)
    · exact absurd k5 (Nat.not_le.mpr c)
  unfold dev_step_apply at hne ⊢
  cases hc : s.call with
  | read offset len =>
    rw [hc] at hne hrange hlim k1
    simp only [dev_call.len, dev_call.offset] at hne hrange hlim k1 ⊢
    unfold fram_dev_read at hne ⊢
    rw [if_neg k1, if_neg hrange] at hne ⊢
    by_cases cl : fram_dev_lock (dev_step_enter dev s) ≠ ESP_OK
    · rw [if_pos cl]
      simp only
      rw [(dev_record_error_fields _).2.1, e2]
    · rw [if_neg cl] at hne ⊢
      simp only at hne ⊢
      rw [fram_dev_read_loop_single len (dev_step_enter dev s) offset len _ [] k1 k1 hlim hne,
        (dev_record_error_fields _).2.1]
      exact congrArg (fun x => (x + 1) % U32) e2
  | write offset data =>
    rw [hc] at hne hrange hlim k1
    simp only [dev_call.len, dev_call.offset] at hne hrange hlim k1 ⊢
    unfold fram_dev_write at hne ⊢
    rw [if_neg k1, if_neg hrange] at hne ⊢
    by_cases cl : fram_dev_lock (dev_step_enter dev s) ≠ ESP_OK
    · rw [if_pos cl]
      simp only
      rw [(dev_record_error_fields _).2.1, e2]
    · rw [if_neg cl] at hne ⊢
      simp only at hne ⊢
      rw [fram_dev_write_loop_single data.length (dev_step_enter dev s) offset _ data k1 k1
        hlim hne, (dev_record_error_fields _).2.1]
      exact congrArg (fun x => (x + 1) % U32) e2

theorem dev_outcome_unhealthy (d d1 : fram_dev_t) (h : DevOutcome d d1)
    (hu : d.healthy = false) : d1.healthy = false := by
  obtain ⟨_, c⟩ := h
  rcases c with ⟨a, _⟩ | ⟨a, _⟩ | ⟨_, a⟩ | ⟨_, a⟩
  · rw [a, hu]
  · rw [a, hu]
  · rw [a, hu]; split_ifs <;> rfl
  · rw [a, hu]; split_ifs <;> rfl

/-- A call that clears `healthy` leaves the consecutive-error count at the
threshold or above. -/
theorem dev_outcome_cleared (d d1 : fram_dev_t) (h : DevOutcome d d1)
    (hh : d.healthy = true) (hu : d1.healthy = false) :
    d.error_threshold ≤ d1.consecutive_errors := by
  obtain ⟨_, c⟩ := h
  rcases c with ⟨a, _⟩ | ⟨a, _⟩ | ⟨_, a⟩ | ⟨_, a⟩
  · rw [a, hh] at hu; exact absurd hu (by decide)
  · rw [a, hh] at hu; exact absurd hu (by decide)
  · by_cases c : d.error_threshold ≤ d1.consecutive_errors
    · exact c
    · rw [if_neg c, hh] at a
      rw [a] at hu
      exact absurd hu (by decide)
  · by_cases c : d.error_threshold ≤ d1.consecutive_errors
    · exact c
    · rw [if_neg c, hh] at a
      rw [a] at hu
      exact absurd hu (by decide)

/-- After every call the device is unhealthy or its consecutive-error count is
below the threshold. -/
theorem dev_outcome_inv (d d1 : fram_dev_t) (h : DevOutcome d d1)
    (hT : 1 ≤ d.error_threshold)
    (hi : d.healthy = false ∨ d.consecutive_errors < d.error_threshold) :
    d1.healthy = false ∨ d1.consecutive_errors < d1.error_threshold := by
  have h0 := h
  obtain ⟨t, c⟩ := h
  rw [t]
  rcases hi with hi | hi
  · exact Or.inl (dev_outcome_unhealthy d d1 h0 hi)
  · rcases c with ⟨_, a⟩ | ⟨_, a⟩ | ⟨_, a⟩ | ⟨_, a⟩
    · exact Or.inr (by rw [a]; exact hi)
    · exact Or.inr (by rw [a]; exact hT)
    · by_cases c : d.error_threshold ≤ d1.consecutive_errors
      · rw [if_pos c] at a
        exact Or.inl a
      · exact Or.inr (by omega)
    · by_cases c : d.error_threshold ≤ d1.consecutive_errors
      · rw [if_pos c] at a
        exact Or.inl a
      · exact Or.inr (by omega)

/-- A call adds at most one to the consecutive-error count. -/
theorem dev_outcome_count (d d1 : fram_dev_t) (h : DevOutcome d d1) :
    d1.consecutive_errors ≤ d.consecutive_errors + 1 := by
  obtain ⟨_, c⟩ := h
  rcases c with ⟨_, a⟩ | ⟨_, a⟩ | ⟨a, _⟩ | ⟨a, _⟩
  · omega
  · omega
  · rw [a]; exact Nat.mod_le _ _
  · omega

theorem dev_run_threshold : ∀ (steps : List dev_step) (dev : fram_dev_t),
    (dev_run dev steps).error_threshold = dev.error_threshold := by
  intro steps
  induction steps with
  | nil => intro dev; rfl
  | cons s rest ih =>
    intro dev
    show (dev_run (dev_step_apply dev s).2 rest).error_threshold = _
    rw [ih, (dev_step_outcome dev s).1]

theorem dev_run_unhealthy : ∀ (steps : List dev_step) (dev : fram_dev_t),
    dev.healthy = false → (dev_run dev steps).healthy = false := by
  intro steps
  induction steps with
  | nil => intro dev h; exact h
  | cons s rest ih =>
    intro dev h
    exact ih _ (dev_outcome_unhealthy dev _ (dev_step_outcome dev s) h)

theorem dev_run_inv : ∀ (steps : List dev_step) (dev : fram_dev_t),
    1 ≤ dev.error_threshold →
    (dev.healthy = false ∨ dev.consecutive_errors < dev.error_threshold) →
    (dev_run dev steps).healthy = false ∨
      (dev_run dev steps).consecutive_errors < dev.error_threshold := by
  intro steps
  induction steps with
  | nil => intro dev _ h; exact h
  | cons s rest ih =>
    intro dev hT h
    have t := (dev_step_outcome dev s).1
    have := ih (dev_step_apply dev s).2 (by rw [t]; exact hT)
      (dev_outcome_inv dev _ (dev_step_outcome dev s) hT h)
    rw [t] at this
    exact this

theorem dev_run_count : ∀ (steps : List dev_step) (dev : fram_dev_t),
    (dev_run dev steps).consecutive_errors ≤ dev.consecutive_errors + steps.length := by
  intro steps
  induction steps with
  | nil => intro dev; exact Nat.le_refl _
  | cons s rest ih =>
    intro dev
    have h1 := ih (dev_step_apply dev s).2
    have h2 := dev_outcome_count dev _ (dev_step_outcome dev s)
    rw [List.length_cons]
    show (dev_run (dev_step_apply dev s).2 rest).consecutive_errors ≤ _
    omega

/-- The device is unhealthy after a sequence of calls exactly when the
consecutive-error count stood at the threshold or above after one of them. -/
theorem dev_run_unhealthy_iff : ∀ (steps : List dev_step) (dev : fram_dev_t),
    1 ≤ dev.error_threshold → dev.healthy = true →
    dev.consecutive_errors < dev.error_threshold →
    ((dev_run dev steps).healthy = false ↔
      ∃ n, n ≤ steps.length ∧
        dev.error_threshold ≤ (dev_run dev (steps.take n)).consecutive_errors) := by
  intro steps
  induction steps with
  | nil =>
    intro dev _ hh hc
    constructor
    · intro h
      rw [show dev_run dev [] = dev from rfl, hh] at h
      exact absurd h (by decide)
    · rintro ⟨n, _, h⟩
      rw [List.take_nil] at h
      have : (dev_run dev []).consecutive_errors = dev.consecutive_errors := rfl
      omega
  | cons s rest ih =>
    intro dev hT hh hc
    have ho := dev_step_outcome dev s
    have t := ho.1
    by_cases c : (dev_step_apply dev s).2.healthy = false
    · constructor
      · intro _
        exact ⟨1, by rw [List.length_cons]; omega, dev_outcome_cleared dev _ ho hh c⟩
      · intro _
        exact dev_run_unhealthy rest _ c
    · have c1 : (dev_step_apply dev s).2.healthy = true := by
        cases hx : (dev_step_apply dev s).2.healthy
        · exact absurd hx c
        · rfl
      have hi := dev_outcome_inv dev _ ho hT (Or.inr hc)
      have hc1 : (dev_step_apply dev s).2.consecutive_errors
          < (dev_step_apply dev s).2.error_threshold := hi.elim (fun x => absurd x c) id
      have := ih (dev_step_apply dev s).2 (by rw [t]; exact hT) c1 hc1
      rw [t] at this hc1
      show (dev_run (dev_step_apply dev s).2 rest).healthy = false ↔ _
      rw [this]
      constructor
      · rintro ⟨n, hn, h⟩
        exact ⟨n + 1, by rw [List.length_cons]; omega, h⟩
      · rintro ⟨n, hn, h⟩
        cases n with
        | zero =>
          have : (dev_run dev (List.take 0 (s :: rest))).consecutive_errors
              = dev.consecutive_errors := rfl
          omega
        | succ m =>
          rw [List.length_cons] at hn
          exact ⟨m, by omega, h⟩

/-- Calls in a row that pass the range check, are moved in one HAL transfer
and fail each add one to the consecutive-error count. -/
theorem dev_fail_run_count : ∀ (steps : List dev_step) (dev : fram_dev_t),
    DevFailRun dev steps → dev.consecutive_errors + steps.length < U32 →
    (dev_run dev steps).consecutive_errors = dev.consecutive_errors + steps.length := by
  intro steps
  induction steps with
  | nil => intro dev _ _; rfl
  | cons s rest ih =>
    intro dev hf hb
    obtain ⟨h1, h2, h3⟩ := hf
    rw [List.length_cons] at hb ⊢
    have e := dev_step_single_fail dev s h1 h2
    rw [Nat.mod_eq_of_lt (by omega)] at e
    have := ih (dev_step_apply dev s).2 h3 (by omega)
    show (dev_run (dev_step_apply dev s).2 rest).consecutive_errors = _
    omega

theorem dev_fresh_fields (K : Kconfig) (hal : fram_hal_t) (et mt : Nat) (dev dev0 : fram_dev_t)
    (h : dev = (fram_dev_init K hal et mt).2 ∨ dev = fram_dev_reset_stats dev0) :
    dev.healthy = true ∧ dev.consecutive_errors = 0 := by
  rcases h with h | h
  · rw [h]
    unfold fram_dev_init
    simp only
    split_ifs <;> exact ⟨rfl, rfl⟩
  · rw [h]
    exact ⟨rfl, rfl⟩

/-- C21 (amended). Device health threshold. Start from a device `dev` that
`fram_dev_init` just returned or `fram_dev_reset_stats` just reset, with error
threshold `T ≥ 1`, and make any sequence of `fram_dev_read` / `fram_dev_write`
calls, each with the mutex free or held and the mock re-armed or not before
it. The healthy flag is false afterwards iff after one of the calls the
consecutive-error count (the last change a call makes to it is the error it
counts) stood at `T` or above. `T` calls in a row that each pass the range
check, fit one HAL transfer and do not return `ESP_OK` make the device
unhealthy, and no sequence of fewer than `T` calls does. -/
theorem dev_health_threshold (K : Kconfig) (hal : fram_hal_t) (et mt : Nat)
    (dev dev0 : fram_dev_t) (steps : List dev_step)
    (hfresh : dev = (fram_dev_init K hal et mt).2 ∨ dev = fram_dev_reset_stats dev0)
    (hT : 1 ≤ dev.error_threshold) :
    ((dev_run dev steps).healthy = false ↔
      ∃ n, n ≤ steps.length ∧
        dev.error_threshold ≤ (dev_run dev (steps.take n)).consecutive_errors) ∧
    (dev.error_threshold < U32 → steps.length = dev.error_threshold → DevFailRun dev steps →
      (dev_run dev steps).healthy = false) ∧
    (steps.length < dev.error_threshold → (dev_run dev steps).healthy = true) := by
  obtain ⟨hh, hc⟩ := dev_fresh_fields K hal et mt dev dev0 hfresh
  have hiff := dev_run_unhealthy_iff steps dev hT hh (by omega)
  refine ⟨hiff, ?_, ?_⟩
  · intro hU hlen hf
    have e := dev_fail_run_count steps dev hf (by omega)
    have hi := dev_run_inv steps dev hT (Or.inr (by omega))
    exact hi.elim id (fun x => by omega)
  · intro hlen
    cases hx : (dev_run dev steps).healthy
    · obtain ⟨n, hn, h⟩ := hiff.mp hx
      have := dev_run_count (steps.take n) dev
      rw [List.length_take] at this
      omega
    · rfl

theorem example_dev_one_fail :
    dev_step_single example_dev_one example_step_fail ∧
    (dev_step_apply example_dev_one example_step_fail).1 = ESP_FAIL := by
  constructor
  · unfold dev_step_single
    decide
  · rfl

/-- Witness for C21: on the mock device of the tests initialised with
`error_threshold = 1`, one `fram_dev_read(dev, 0, buf, 4)` on the mock armed
with `fram_hal_mock_set_fail_after(hal, 0)` returns `ESP_FAIL` and leaves the
device unhealthy. -/
theorem dev_health_threshold_witness :
    (dev_step_apply example_dev_one example_step_fail).1 = ESP_FAIL ∧
    (dev_run example_dev_one [example_step_fail]).healthy = false :=
  ⟨example_dev_one_fail.2,
    (dev_health_threshold example_K (mock_dev (fun _ => 0xFF) 32768).hal 1 1000 example_dev_one
      example_dev_one [example_step_fail] (Or.inl rfl) (by decide)).2.1 (by decide) rfl
      ⟨example_dev_one_fail.1, by rw [example_dev_one_fail.2]; decide, trivial⟩⟩

/-- Counterexample for C21: the mock device of the tests initialised with
`error_threshold = 1` is healthy with no error counted; the call
`fram_dev_read(dev, 40000, buf, 1)` fails with `ESP_ERR_INVALID_SIZE` (the
offset lies beyond the 32768 bytes of the device), and after this one failing
call the device is still healthy. -/
theorem dev_health_threshold_counterexample :
    example_dev_one.error_threshold = 1 ∧ example_dev_one.healthy = true ∧
    example_dev_one.consecutive_errors = 0 ∧
    (dev_step_apply example_dev_one example_step_beyond).1 = ESP_ERR_INVALID_SIZE ∧
    (dev_run example_dev_one [example_step_beyond]).healthy = true :=
  ⟨rfl, rfl, rfl, rfl, rfl⟩

/-- C22. Device health is not auto-healed. Once the healthy flag is false it
is false after every sequence of `fram_dev_read` / `fram_dev_write` calls,
whatever they return; `fram_dev_reset_stats` sets it back to true and zeroes
`read_count`, `write_count`, `error_count` and the consecutive-error count. -/
theorem dev_health_not_auto_healed (dev : fram_dev_t) (steps : List dev_step)
    (h : dev.healthy = false) :
    (dev_run dev steps).healthy = false ∧
    (fram_dev_reset_stats (dev_run dev steps)).healthy = true ∧
    (fram_dev_reset_stats (dev_run dev steps)).read_count = 0 ∧
    (fram_dev_reset_stats (dev_run dev steps)).write_count = 0 ∧
    (fram_dev_reset_stats (dev_run dev steps)).error_count = 0 ∧
    (fram_dev_reset_stats (dev_run dev steps)).consecutive_errors = 0 :=
  ⟨dev_run_unhealthy steps dev h, rfl, rfl, rfl, rfl, rfl⟩

/-- Witness for C22: the example device made unhealthy by one failed read
stays unhealthy across a `fram_dev_write` of four bytes that returns `ESP_OK`
and resets the consecutive-error count; `fram_dev_reset_stats` then makes it
healthy again. -/
theorem dev_health_not_auto_healed_witness :
    (dev_run example_dev_one [example_step_fail]).healthy = false ∧
    (dev_step_apply (dev_run example_dev_one [example_step_fail]) example_step_ok).1
      = ESP_OK ∧
    (dev_run (dev_run example_dev_one [example_step_fail])
      [example_step_ok]).consecutive_errors = 0 ∧
    (dev_run (dev_run example_dev_one [example_step_fail]) [example_step_ok]).healthy
      = false ∧
    (fram_dev_reset_stats (dev_run (dev_run example_dev_one [example_step_fail])
      [example_step_ok])).healthy = true :=
  ⟨rfl, rfl, rfl,
    (dev_health_not_auto_healed (dev_run example_dev_one [example_step_fail])
      [example_step_ok] rfl).1,
    (dev_health_not_auto_healed (dev_run example_dev_one [example_step_fail])
      [example_step_ok] rfl).2.1⟩

/-! ## Ring log: the length limit of an append -/

/-- C27 (amended). Ring append length limit. For every ready ring and every
payload length `len` with `len > max_payload` or `len > 65535`,
`fram_ring_append` returns `ESP_ERR_INVALID_SIZE` and hands back the ring
object and the partition manager (with its device and media) as they were: no
byte is written and `head_slot`, `tail_slot`, `head_seq` and `count` are
unchanged. On a working partition, for a ring as `fram_ring_init` leaves it
(geometry consistent with the partition, mutex free, `head_slot < capacity`),
every `len` with `len ≤ max_payload` and `len ≤ 65535` (0 included) makes
`fram_ring_append` return `ESP_OK`. -/
theorem ring_append_length_limit (ring : fram_ring_t) (p : fram_partition_t) (pm : fram_pm_t)
    (pmem : Nat → Nat) (payload : List Nat) (now : Nat) (hr : ring.ready = true) :
    ((payload.length > ring.max_payload ∨ payload.length > 65535) →
      fram_ring_append ring pm payload now = (ESP_ERR_INVALID_SIZE, ring, pm)) ∧
    (RingGeom ring p → PmOK pm p pmem → ring.head_slot < ring.capacity →
      payload.length ≤ ring.max_payload → payload.length ≤ 65535 →
      ∃ ring1 pm1, fram_ring_append ring pm payload now = (ESP_OK, ring1, pm1)) := by
  constructor
  · intro h
    have h2 : payload.length > ring.max_payload ∨ payload.length > UINT16_MAX := h
    unfold fram_ring_append
    simp only [hr, Bool.not_true, Bool.false_eq_true, if_false]
    rw [if_pos h2]
  · intro g h hh hl hl16
    obtain ⟨pm1, pmem1, ha, _⟩ := ring_append_ok ring p pm pmem payload now g h hh hl hl16
    exact ⟨_, pm1, ha⟩

/-- Witness for C27: on the ring of the tests (`max_payload = 16`) after
`fram_ring_init` on the erased partition, an append of 17 bytes returns
`ESP_ERR_INVALID_SIZE` and changes nothing, an append of 4 bytes and an append
of 0 bytes return `ESP_OK`. -/
theorem ring_append_length_limit_witness :
    fram_ring_append (fram_ring_init example_K example_ring0 example_pm example_ring_cfg).2.1
        (fram_ring_init example_K example_ring0 example_pm example_ring_cfg).2.2
        (List.replicate 17 0) 5
      = (ESP_ERR_INVALID_SIZE,
          (fram_ring_init example_K example_ring0 example_pm example_ring_cfg).2.1,
          (fram_ring_init example_K example_ring0 example_pm example_ring_cfg).2.2) ∧
    (∃ ring1 pm1, fram_ring_append
        (fram_ring_init example_K example_ring0 example_pm example_ring_cfg).2.1
        (fram_ring_init example_K example_ring0 example_pm example_ring_cfg).2.2
        [1, 2, 3, 4] 5 = (ESP_OK, ring1, pm1)) ∧
    (∃ ring1 pm1, fram_ring_append
        (fram_ring_init example_K example_ring0 example_pm example_ring_cfg).2.1
        (fram_ring_init example_K example_ring0 example_pm example_ring_cfg).2.2
        [] 5 = (ESP_OK, ring1, pm1)) := by
  obtain ⟨hr1, g1, h1, inv1⟩ := ring_init_erased example_K example_ring0 _ example_pm _
    example_ring_part (fun _ => 0xFF) example_ring_cfg example_ring_find example_pm_ring_ok
    (fun _ _ => rfl) (by decide) (by decide) example_ring_init_ok
  have hhead : (fram_ring_init example_K example_ring0 example_pm
      example_ring_cfg).2.1.head_slot
      < (fram_ring_init example_K example_ring0 example_pm example_ring_cfg).2.1.capacity := by
    rw [hr1]; decide
  have hmp : (fram_ring_init example_K example_ring0 example_pm
      example_ring_cfg).2.1.max_payload = 16 := by
    rw [hr1]; rfl
  exact ⟨(ring_append_length_limit _ example_ring_part _ (fun _ => 0xFF) (List.replicate 17 0) 5
      g1.ready).1 (Or.inl (by rw [hmp]; decide)),
    (ring_append_length_limit _ example_ring_part _ (fun _ => 0xFF) [1, 2, 3, 4] 5
      g1.ready).2 g1 h1 hhead (by rw [hmp]; decide) (by decide),
    (ring_append_length_limit _ example_ring_part _ (fun _ => 0xFF) [] 5
      g1.ready).2 g1 h1 hhead (by rw [hmp]; decide) (by decide)⟩

/-! ## Slot validation on a working partition -/

/-- A read of at least one byte from a working partition: the bytes when the
range lies inside the partition, `ESP_ERR_INVALID_SIZE` otherwise. -/
theorem fram_pm_read_cases (pm : fram_pm_t) (p : fram_partition_t) (pmem : Nat → Nat)
    (offset len : Nat) (h : PmOK pm p pmem) (hlen : 0 < len) :
    ∃ pm1, PmOK pm1 p pmem ∧
      fram_pm_read pm (some p) offset len
        = (if offset + len ≤ p.size then (ESP_OK, mem_read pmem offset len, pm1)
           else (ESP_ERR_INVALID_SIZE, [], pm1)) := by
  by_cases c : offset + len ≤ p.size
  · obtain ⟨pm1, h1, hok⟩ := fram_pm_read_ok pm p pmem offset len h hlen c
    exact ⟨pm1, hok, by rw [if_pos c]; exact h1⟩
  · exact ⟨pm, h, by rw [if_neg c]; exact fram_pm_read_bad pm p pmem offset len h hlen c⟩

theorem mem_read_headD (pmem : Nat → Nat) (a : Nat) : (mem_read pmem a 1).headD 0 = pmem a := by
  rw [mem_read_one]
  rfl

/-- On a working partition `fram_ring_validate_slot` returns what
`ring_slot_check` reads off the partition bytes. -/
theorem ring_validate_check (ring : fram_ring_t) (p : fram_partition_t) (pm : fram_pm_t)
    (pmem : Nat → Nat) (slot : Nat) (hp : ring.part = some p) (h : PmOK pm p pmem) :
    ∃ pm1, PmOK pm1 p pmem ∧
      fram_ring_validate_slot ring pm slot
        = ((ring_slot_check ring p pmem slot).1, (ring_slot_check ring p pmem slot).2, pm1) := by
  obtain ⟨pm1, hok1, r1⟩ := fram_pm_read_cases pm p pmem (fram_ring_commit_offset ring slot) 1 h
    (by decide)
  unfold fram_ring_validate_slot fram_ring_read_commit fram_ring_read_header ring_slot_check
  simp only [hp, r1]
  by_cases c1 : fram_ring_commit_offset ring slot + 1 ≤ p.size
  · simp only [c1, if_true, not_true_eq_false, false_or, mem_read_headD, ne_eq]
    by_cases c2 : pmem (fram_ring_commit_offset ring slot) = FRAM_RING_COMMIT
    · simp only [c2, not_true_eq_false, or_self, if_false]
      obtain ⟨pm2, hok2, r2⟩ := fram_pm_read_cases pm1 p pmem (fram_ring_slot_offset ring slot)
        RING_HEADER_SIZE hok1 (by decide)
      simp only [r2]
      by_cases c3 : fram_ring_slot_offset ring slot + RING_HEADER_SIZE ≤ p.size
      · simp only [c3, if_true, not_true_eq_false, if_false]
        by_cases c4 : (fram_ring_header_of_bytes
            (mem_read pmem (fram_ring_slot_offset ring slot) RING_HEADER_SIZE)).magic = ring.magic
        · simp only [c4, not_true_eq_false, if_false]
          by_cases c5 : (fram_ring_header_of_bytes
              (mem_read pmem (fram_ring_slot_offset ring slot) RING_HEADER_SIZE)).len
              > ring.max_payload
          · simp only [c5, if_true]
            exact ⟨pm2, hok2, rfl⟩
          · simp only [c5, if_false]
            by_cases c6 : (fram_ring_header_of_bytes
                (mem_read pmem (fram_ring_slot_offset ring slot) RING_HEADER_SIZE)).len > 0
            · obtain ⟨pm3, hok3, r3⟩ := fram_pm_read_cases pm2 p pmem
                ((fram_ring_slot_offset ring slot + RING_HEADER_SIZE) % U32) _ hok2 c6
              simp only [c6, if_true, r3, true_and]
              by_cases c7 : (fram_ring_slot_offset ring slot + RING_HEADER_SIZE) % U32
                  + (fram_ring_header_of_bytes
                    (mem_read pmem (fram_ring_slot_offset ring slot) RING_HEADER_SIZE)).len
                  ≤ p.size
              · simp only [c7, if_true, not_true_eq_false, if_false]
                refine ⟨pm3, hok3, ?_⟩
                split_ifs <;> rfl
              · simp only [c7, if_false, not_false_eq_true, if_true]
                refine ⟨pm3, hok3, ?_⟩
                simp
            · simp only [c6, if_false, false_and, not_true_eq_false]
              refine ⟨pm2, hok2, ?_⟩
              split_ifs <;> rfl
        · simp only [c4, not_false_eq_true, if_true]
          exact ⟨pm2, hok2, rfl⟩
      · simp only [c3, if_false, not_false_eq_true, if_true]
        refine ⟨pm2, hok2, ?_⟩
        simp
    · simp only [c2, not_false_eq_true, or_true, if_true]
      exact ⟨pm1, hok1, rfl⟩
  · simp only [c1, if_false, not_false_eq_true, true_or, if_true]
    refine ⟨pm1, hok1, ?_⟩
    simp

/-- What is known of a slot that `ring_slot_check` accepts. -/
theorem ring_slot_check_ok (ring : fram_ring_t) (p : fram_partition_t) (pmem : Nat → Nat)
    (slot : Nat) (hdr : fram_ring_header_t)
    (h : ring_slot_check ring p pmem slot = (ESP_OK, some hdr)) :
    hdr = fram_ring_header_of_bytes
      (mem_read pmem (fram_ring_slot_offset ring slot) RING_HEADER_SIZE) ∧
    pmem (fram_ring_commit_offset ring slot) = FRAM_RING_COMMIT ∧
    hdr.magic = ring.magic ∧ hdr.len ≤ ring.max_payload ∧
    (hdr.len > 0 →
      (fram_ring_slot_offset ring slot + RING_HEADER_SIZE) % U32 + hdr.len ≤ p.size) := by
  unfold ring_slot_check at h
  simp only at h
  by_cases c1 : ¬ fram_ring_commit_offset ring slot + 1 ≤ p.size ∨
      pmem (fram_ring_commit_offset ring slot) ≠ FRAM_RING_COMMIT
  · rw [if_pos c1] at h
    exact absurd (Prod.mk.inj h).1 (by decide)
  rw [if_neg c1] at h
  by_cases c2 : ¬ fram_ring_slot_offset ring slot + RING_HEADER_SIZE ≤ p.size
  · rw [if_pos c2] at h
    exact absurd (Prod.mk.inj h).1 (by decide)
  rw [if_neg c2] at h
  by_cases c3 : (fram_ring_header_of_bytes
      (mem_read pmem (fram_ring_slot_offset ring slot) RING_HEADER_SIZE)).magic ≠ ring.magic
  · rw [if_pos c3] at h
    exact absurd (Prod.mk.inj h).1 (by decide)
  rw [if_neg c3] at h
  by_cases c4 : (fram_ring_header_of_bytes
      (mem_read pmem (fram_ring_slot_offset ring slot) RING_HEADER_SIZE)).len > ring.max_payload
  · rw [if_pos c4] at h
    exact absurd (Prod.mk.inj h).1 (by decide)
  rw [if_neg c4] at h
  by_cases c5 : (fram_ring_header_of_bytes
      (mem_read pmem (fram_ring_slot_offset ring slot) RING_HEADER_SIZE)).len > 0 ∧
      ¬ (fram_ring_slot_offset ring slot + RING_HEADER_SIZE) % U32 + (fram_ring_header_of_bytes
      (mem_read pmem (fram_ring_slot_offset ring slot) RING_HEADER_SIZE)).len ≤ p.size
  · rw [if_pos c5] at h
    exact absurd (Prod.mk.inj h).1 (by decide)
  rw [if_neg c5] at h
  have e : fram_ring_header_of_bytes
      (mem_read pmem (fram_ring_slot_offset ring slot) RING_HEADER_SIZE) = hdr := by
    split_ifs at h <;>
      first
      | exact absurd (Prod.mk.inj h).1 (by decide)
      | exact Option.some.inj (Prod.mk.inj h).2
  rw [e] at c3 c4 c5
  refine ⟨e.symm, ?_, ?_, by omega, ?_⟩
  · by_contra c
    exact c1 (Or.inr c)
  · by_contra c
    exact c3 c
  · intro hl
    by_contra c
    exact c5 ⟨hl, c⟩

/-- The buffer contract of `fram_ring_read_slot_payload` on a slot that
validates, on a working partition. -/
theorem ring_read_slot_contract (ring : fram_ring_t) (p : fram_partition_t) (pm pmv : fram_pm_t)
    (pmem : Nat → Nat) (slot : Nat) (hdr : fram_ring_header_t) (out : ring_peek_t) (cap : Nat)
    (hp : ring.part = some p) (h : PmOK pm p pmem)
    (hv : fram_ring_validate_slot ring pm slot = (ESP_OK, some hdr, pmv))
    (hlen : out.len = some cap) :
    (∀ buf, out.payload = some buf → cap < hdr.len →
      fram_ring_read_slot_payload ring pm slot out
        = (ESP_ERR_INVALID_SIZE, { out with len := some hdr.len }, pmv)) ∧
    (out.payload = none →
      fram_ring_read_slot_payload ring pm slot out
        = (ESP_OK, { out with len := some hdr.len
                              seq := if out.seq.isSome then some hdr.seq else none
                              ts_us := if out.ts_us.isSome then some hdr.ts_us else none },
            pmv)) ∧
    (∀ buf, out.payload = some buf → hdr.len ≤ cap →
      ∃ pm1, fram_ring_read_slot_payload ring pm slot out
        = (ESP_OK,
            { payload := some (mem_read pmem
                ((fram_ring_slot_offset ring slot + RING_HEADER_SIZE) % U32) hdr.len
                ++ buf.drop hdr.len)
              len := some hdr.len
              seq := if out.seq.isSome then some hdr.seq else none
              ts_us := if out.ts_us.isSome then some hdr.ts_us else none }, pm1)) := by
  obtain ⟨pm1, hok1, hc⟩ := ring_validate_check ring p pm pmem slot hp h
  rw [hv] at hc
  have e1 : (ring_slot_check ring p pmem slot).1 = ESP_OK := (Prod.mk.inj hc).1.symm
  have e2 : (ring_slot_check ring p pmem slot).2 = some hdr := (Prod.mk.inj (Prod.mk.inj hc).2).1.symm
  have e3 : pmv = pm1 := (Prod.mk.inj (Prod.mk.inj hc).2).2
  have hchk : ring_slot_check ring p pmem slot = (ESP_OK, some hdr) := by
    rw [← e1, ← e2]
  obtain ⟨_, _, _, _, hfit⟩ := ring_slot_check_ok ring p pmem slot hdr hchk
  refine ⟨?_, ?_, ?_⟩
  · intro buf hb hlt
    unfold fram_ring_read_slot_payload
    simp only [hv, hlen, hb, hlt, if_true]
  · intro hb
    unfold fram_ring_read_slot_payload
    simp only [hv, hlen, hb]
  · intro buf hb hle
    by_cases c : hdr.len > 0
    · obtain ⟨pm2, hok2, r2⟩ := fram_pm_read_cases pmv p pmem
        ((fram_ring_slot_offset ring slot + RING_HEADER_SIZE) % U32) hdr.len (e3 ▸ hok1) c
      rw [if_pos (hfit c)] at r2
      refine ⟨pm2, ?_⟩
      unfold fram_ring_read_slot_payload
      simp only [hv, hlen, hb, Nat.not_lt.mpr hle, if_false, c, if_true, hp, r2, ne_eq,
        not_true_eq_false]
    · refine ⟨pmv, ?_⟩
      have h0 : hdr.len = 0 := by omega
      unfold fram_ring_read_slot_payload
      simp only [hv, hlen, hb, Nat.not_lt.mpr hle, if_false, c, h0, mem_read_zero,
        List.nil_append, List.drop_zero]
      cases out with
      | mk pl ln sq ts =>
        simp only at hb hlen ⊢
        rw [hb, if_neg (Nat.not_lt_zero _), if_neg (Nat.lt_irrefl 0)]

/-- C23. Ring peek buffer contract. On a working partition, for a ready,
non-empty ring with a free mutex: when the oldest record (slot `tail_slot`)
validates with header `hdr`, stored length `L = hdr.len`, then
`fram_ring_peek_oldest` with a non-`NULL` buffer and `*len < L` returns
`ESP_ERR_INVALID_SIZE`, sets `*len = L` and leaves the buffer (and `*seq`,
`*ts_us`) as they were; with a `NULL` buffer it returns `ESP_OK` and sets
`*len = L` whatever `*len` was, and so does `fram_ring_peek_oldest_len`; with
a non-`NULL` buffer and `*len ≥ L` it returns `ESP_OK`, puts the `L` payload
bytes of the slot at the start of the buffer, leaves the rest of the buffer
alone and sets `*len = L`. The same holds of `fram_ring_peek_newest` and
`fram_ring_peek_newest_len` when the newest record (slot
`(head_slot + capacity - 1) % capacity`) validates. -/
theorem ring_peek_buffer_contract (ring : fram_ring_t) (p : fram_partition_t)
    (pm pmv : fram_pm_t) (pmem : Nat → Nat) (hdr : fram_ring_header_t) (out : ring_peek_t)
    (cap : Nat) (hp : ring.part = some p) (hready : ring.ready = true)
    (hmx : ring.mutex = SemaphoreHandle_t.free) (hcount : ring.count ≠ 0)
    (h : PmOK pm p pmem) (hlen : out.len = some cap) :
    (fram_ring_validate_slot ring pm ring.tail_slot = (ESP_OK, some hdr, pmv) →
      RingPeekContract (fram_ring_peek_oldest ring pm out)
        (mem_read pmem ((fram_ring_slot_offset ring ring.tail_slot + RING_HEADER_SIZE) % U32)
          hdr.len) hdr out cap pmv ∧
      fram_ring_peek_oldest_len ring pm (some cap)
        = (ESP_OK, { payload := none, len := some hdr.len, seq := none, ts_us := none }, pmv)) ∧
    (fram_ring_validate_slot ring pm (ring_newest_slot ring) = (ESP_OK, some hdr, pmv) →
      RingPeekContract (fram_ring_peek_newest ring pm out)
        (mem_read pmem
          ((fram_ring_slot_offset ring (ring_newest_slot ring) + RING_HEADER_SIZE) % U32)
          hdr.len) hdr out cap pmv ∧
      fram_ring_peek_newest_len ring pm (some cap)
        = (ESP_OK, { payload := none, len := some hdr.len, seq := none, ts_us := none }, pmv)) := by
  have hlock : fram_ring_lock ring = ESP_OK := by
    unfold fram_ring_lock
    rw [hmx]
    rfl
  have eo : ∀ o : ring_peek_t, o.len.isNone = false →
      fram_ring_peek_oldest ring pm o = fram_ring_read_slot_payload ring pm ring.tail_slot o := by
    intro o ho
    unfold fram_ring_peek_oldest
    simp only [ho, hready, hcount, hlock, Bool.false_eq_true, if_false, Bool.not_true, or_self,
      ne_eq, not_true_eq_false]
  have en : ∀ o : ring_peek_t, o.len.isNone = false →
      fram_ring_peek_newest ring pm o
        = fram_ring_read_slot_payload ring pm (ring_newest_slot ring) o := by
    intro o ho
    unfold fram_ring_peek_newest ring_newest_slot
    simp only [ho, hready, hcount, hlock, Bool.false_eq_true, if_false, Bool.not_true, or_self,
      ne_eq, not_true_eq_false]
  have hout : out.len.isNone = false := by rw [hlen]; rfl
  constructor
  · intro hv
    constructor
    · unfold RingPeekContract
      rw [eo out hout]
      exact ring_read_slot_contract ring p pm pmv pmem ring.tail_slot hdr out cap hp h hv hlen
    · unfold fram_ring_peek_oldest_len
      rw [if_neg (by simp)]
      rw [eo { payload := none, len := some cap, seq := none, ts_us := none } rfl]
      exact (ring_read_slot_contract ring p pm pmv pmem ring.tail_slot hdr
        { payload := none, len := some cap, seq := none, ts_us := none } cap hp h hv rfl).2.1 rfl
  · intro hv
    constructor
    · unfold RingPeekContract
      rw [en out hout]
      exact ring_read_slot_contract ring p pm pmv pmem _ hdr out cap hp h hv hlen
    · unfold fram_ring_peek_newest_len
      rw [if_neg (by simp)]
      rw [en { payload := none, len := some cap, seq := none, ts_us := none } rfl]
      exact (ring_read_slot_contract ring p pm pmv pmem _ hdr
        { payload := none, len := some cap, seq := none, ts_us := none } cap hp h hv rfl).2.1 rfl

/-- Witness for C23: after the three appends of the ring test on the erased
example partition the newest record is four bytes long; a peek into a two-byte
buffer is refused with `*len = 4`, and the length query with `*len = 0`
answers 4. -/
theorem ring_peek_buffer_contract_witness :
    ∃ pmv, fram_ring_peek_newest (example_ring_run example_ring_entries).2.1
        (example_ring_run example_ring_entries).2.2
        { payload := some [0, 0], len := some 2, seq := some 0, ts_us := some 0 } =
      (ESP_ERR_INVALID_SIZE,
        { payload := some [0, 0], len := some 4, seq := some 0, ts_us := some 0 }, pmv) ∧
      fram_ring_peek_newest_len (example_ring_run example_ring_entries).2.1
        (example_ring_run example_ring_entries).2.2 (some 0) =
      (ESP_OK, { payload := none, len := some 4, seq := none, ts_us := none }, pmv) := by
  have hrun := example_ring_run_ok example_ring_entries (by decide)
  obtain ⟨pmem2, g2, h2, inv2, _⟩ := ring_run_spec example_K example_ring0 _ _ example_pm _ _
    example_ring_part (fun _ => 0xFF) example_ring_cfg example_ring_entries (by decide)
    (by decide) example_pm_ring_ok example_ring_find (fun _ _ => rfl) example_ring_init_ok hrun
  have hcpos := g2.capacity_pos
  have hsmall := ring_capacity_small _ _ _ _ g2 h2
  have hb := inv2.bounded 2 (by decide)
  obtain ⟨pmv, hv, _⟩ := ring_validate_rec _ example_ring_part _ pmem2 (2 % _) (2 % U32) 30
    [0xA7, 0xA5, 0xA5, 0xA5] g2 h2 (Nat.mod_lt _ hcpos) (by decide) hb.1 hb.2
    (inv2.window 2 (by decide) (by
      show 3 ≤ _
      omega))
  have hslot : ring_newest_slot (example_ring_run example_ring_entries).2.1
      = 2 % (example_ring_run example_ring_entries).2.1.capacity := by
    unfold ring_newest_slot
    rw [inv2.head_slot]
    exact pred_slot_eq 3 _ (by decide) hcpos hsmall
  rw [← hslot] at hv
  have hcount : (example_ring_run example_ring_entries).2.1.count ≠ 0 := by
    rw [inv2.count]
    show min 3 _ ≠ 0
    omega
  have hw := (ring_peek_buffer_contract _ example_ring_part _ pmv pmem2 _
    { payload := some [0, 0], len := some 2, seq := some 0, ts_us := some 0 } 2 g2.part
    g2.ready g2.mutex hcount h2 rfl).2 hv
  exact ⟨pmv, hw.1.1 [0, 0] rfl (by decide),
    ((ring_peek_buffer_contract _ example_ring_part _ pmv pmem2 _
      { payload := none, len := some 0, seq := none, ts_us := none } 0 g2.part
      g2.ready g2.mutex hcount h2 rfl).2 hv).2⟩

/-- On a working partition `fram_vslot_validate_slot` returns what
`vslot_slot_check` reads off the partition bytes. -/
theorem vslot_validate_check (vs : fram_vslot_t) (p : fram_partition_t) (pm : fram_pm_t)
    (pmem : Nat → Nat) (slot : Nat) (hp : vs.part = some p) (h : PmOK pm p pmem) :
    ∃ pm1, PmOK pm1 p pmem ∧
      fram_vslot_validate_slot vs pm slot
        = ((vslot_slot_check vs p pmem slot).1, (vslot_slot_check vs p pmem slot).2, pm1) := by
  obtain ⟨pm1, hok1, r1⟩ := fram_pm_read_cases pm p pmem (fram_vslot_commit_offset vs slot) 1 h
    (by decide)
  unfold fram_vslot_validate_slot fram_vslot_read_commit fram_vslot_read_header vslot_slot_check
  simp only [hp, r1]
  by_cases c1 : fram_vslot_commit_offset vs slot + 1 ≤ p.size
  · simp only [c1, if_true, not_true_eq_false, false_or, mem_read_headD, ne_eq]
    by_cases c2 : pmem (fram_vslot_commit_offset vs slot) = FRAM_VSLOT_COMMIT
    · simp only [c2, not_true_eq_false, or_self, if_false]
      obtain ⟨pm2, hok2, r2⟩ := fram_pm_read_cases pm1 p pmem (fram_vslot_slot_offset vs slot)
        VSLOT_HEADER_SIZE hok1 (by decide)
      simp only [r2]
      by_cases c3 : fram_vslot_slot_offset vs slot + VSLOT_HEADER_SIZE ≤ p.size
      · simp only [c3, if_true, not_true_eq_false, if_false]
        by_cases c4 : (fram_vslot_header_of_bytes
            (mem_read pmem (fram_vslot_slot_offset vs slot) VSLOT_HEADER_SIZE)).magic = vs.magic
        · simp only [c4, not_true_eq_false, if_false]
          by_cases c5 : (fram_vslot_header_of_bytes
              (mem_read pmem (fram_vslot_slot_offset vs slot) VSLOT_HEADER_SIZE)).len
              > vs.max_payload
          · simp only [c5, if_true]
            exact ⟨pm2, hok2, rfl⟩
          · simp only [c5, if_false]
            by_cases c6 : (fram_vslot_header_of_bytes
                (mem_read pmem (fram_vslot_slot_offset vs slot) VSLOT_HEADER_SIZE)).len > 0
            · obtain ⟨pm3, hok3, r3⟩ := fram_pm_read_cases pm2 p pmem
                ((fram_vslot_slot_offset vs slot + VSLOT_HEADER_SIZE) % U32) _ hok2 c6
              simp only [c6, if_true, r3, true_and]
              by_cases c7 : (fram_vslot_slot_offset vs slot + VSLOT_HEADER_SIZE) % U32
                  + (fram_vslot_header_of_bytes
                    (mem_read pmem (fram_vslot_slot_offset vs slot) VSLOT_HEADER_SIZE)).len
                  ≤ p.size
              · simp only [c7, if_true, not_true_eq_false, if_false]
                refine ⟨pm3, hok3, ?_⟩
                split_ifs <;> rfl
              · simp only [c7, if_false, not_false_eq_true, if_true]
                refine ⟨pm3, hok3, ?_⟩
                simp
            · simp only [c6, if_false, false_and, not_true_eq_false]
              refine ⟨pm2, hok2, ?_⟩
              split_ifs <;> rfl
        · simp only [c4, not_false_eq_true, if_true]
          exact ⟨pm2, hok2, rfl⟩
      · simp only [c3, if_false, not_false_eq_true, if_true]
        refine ⟨pm2, hok2, ?_⟩
        simp
    · simp only [c2, not_false_eq_true, or_true, if_true]
      exact ⟨pm1, hok1, rfl⟩
  · simp only [c1, if_false, not_false_eq_true, true_or, if_true]
    refine ⟨pm1, hok1, ?_⟩
    simp

/-- What is known of a slot that `vslot_slot_check` accepts. -/
theorem vslot_slot_check_ok (vs : fram_vslot_t) (p : fram_partition_t) (pmem : Nat → Nat)
    (slot : Nat) (hdr : fram_vslot_header_t)
    (h : vslot_slot_check vs p pmem slot = (ESP_OK, some hdr)) :
    hdr = fram_vslot_header_of_bytes
      (mem_read pmem (fram_vslot_slot_offset vs slot) VSLOT_HEADER_SIZE) ∧
    pmem (fram_vslot_commit_offset vs slot) = FRAM_VSLOT_COMMIT ∧
    hdr.magic = vs.magic ∧ hdr.len ≤ vs.max_payload ∧
    (hdr.len > 0 →
      (fram_vslot_slot_offset vs slot + VSLOT_HEADER_SIZE) % U32 + hdr.len ≤ p.size) := by
  unfold vslot_slot_check at h
  simp only at h
  by_cases c1 : ¬ fram_vslot_commit_offset vs slot + 1 ≤ p.size ∨
      pmem (fram_vslot_commit_offset vs slot) ≠ FRAM_VSLOT_COMMIT
  · rw [if_pos c1] at h
    exact absurd (Prod.mk.inj h).1 (by decide)
  rw [if_neg c1] at h
  by_cases c2 : ¬ fram_vslot_slot_offset vs slot + VSLOT_HEADER_SIZE ≤ p.size
  · rw [if_pos c2] at h
    exact absurd (Prod.mk.inj h).1 (by decide)
  rw [if_neg c2] at h
  by_cases c3 : (fram_vslot_header_of_bytes
      (mem_read pmem (fram_vslot_slot_offset vs slot) VSLOT_HEADER_SIZE)).magic ≠ vs.magic
  · rw [if_pos c3] at h
    exact absurd (Prod.mk.inj h).1 (by decide)
  rw [if_neg c3] at h
  by_cases c4 : (fram_vslot_header_of_bytes
      (mem_read pmem (fram_vslot_slot_offset vs slot) VSLOT_HEADER_SIZE)).len > vs.max_payload
  · rw [if_pos c4] at h
    exact absurd (Prod.mk.inj h).1 (by decide)
  rw [if_neg c4] at h
  by_cases c5 : (fram_vslot_header_of_bytes
      (mem_read pmem (fram_vslot_slot_offset vs slot) VSLOT_HEADER_SIZE)).len > 0 ∧
      ¬ (fram_vslot_slot_offset vs slot + VSLOT_HEADER_SIZE) % U32 + (fram_vslot_header_of_bytes
      (mem_read pmem (fram_vslot_slot_offset vs slot) VSLOT_HEADER_SIZE)).len ≤ p.size
  · rw [if_pos c5] at h
    exact absurd (Prod.mk.inj h).1 (by decide)
  rw [if_neg c5] at h
  have e : fram_vslot_header_of_bytes
      (mem_read pmem (fram_vslot_slot_offset vs slot) VSLOT_HEADER_SIZE) = hdr := by
    split_ifs at h <;>
      first
      | exact absurd (Prod.mk.inj h).1 (by decide)
      | exact Option.some.inj (Prod.mk.inj h).2
  rw [e] at c3 c4 c5
  refine ⟨e.symm, ?_, ?_, by omega, ?_⟩
  · by_contra c
    exact c1 (Or.inr c)
  · by_contra c
    exact c3 c
  · intro hl
    by_contra c
    exact c5 ⟨hl, c⟩

/-- C24. VSlot load buffer contract. On a working partition, for a vslot with
data and a free mutex whose active slot validates with header `hdr`, stored
length `L = hdr.len`, and a caller's `*len = cap`: `fram_vslot_load` returns
`ESP_ERR_INVALID_SIZE` and sets `*len = L` (buffer untouched) when `cap < L`,
and also when the buffer is `NULL` and `L > 0`; it returns `ESP_OK` with
`*len = L` and the `L` payload bytes of the slot at the start of the buffer,
the rest of the buffer untouched, when the buffer is non-`NULL` and `cap ≥ L`;
and it returns `ESP_OK` with `*len = 0` when `L = 0`, for a `NULL` buffer
too. -/
theorem vslot_load_buffer_contract (vs : fram_vslot_t) (p : fram_partition_t)
    (pm pmv : fram_pm_t) (pmem : Nat → Nat) (hdr : fram_vslot_header_t) (out : vslot_out_t)
    (cap : Nat) (hp : vs.part = some p) (hd : vs.has_data = true)
    (hmx : vs.mutex = SemaphoreHandle_t.free) (h : PmOK pm p pmem)
    (hv : fram_vslot_validate_slot vs pm vs.active_slot = (ESP_OK, some hdr, pmv))
    (hlen : out.len = some cap) :
    (cap < hdr.len →
      fram_vslot_load vs pm out = (ESP_ERR_INVALID_SIZE, { out with len := some hdr.len }, pmv)) ∧
    (out.payload = none → hdr.len > 0 →
      fram_vslot_load vs pm out = (ESP_ERR_INVALID_SIZE, { out with len := some hdr.len }, pmv)) ∧
    (∀ buf, out.payload = some buf → hdr.len ≤ cap →
      ∃ pm1, fram_vslot_load vs pm out
        = (ESP_OK,
            { payload := some (mem_read pmem
                ((fram_vslot_slot_offset vs vs.active_slot + VSLOT_HEADER_SIZE) % U32) hdr.len
                ++ buf.drop hdr.len)
              len := some hdr.len }, pm1)) ∧
    (hdr.len = 0 → fram_vslot_load vs pm out = (ESP_OK, { out with len := some 0 }, pmv)) := by
  obtain ⟨pm1, hok1, hc⟩ := vslot_validate_check vs p pm pmem vs.active_slot hp h
  rw [hv] at hc
  have e1 : (vslot_slot_check vs p pmem vs.active_slot).1 = ESP_OK := (Prod.mk.inj hc).1.symm
  have e2 : (vslot_slot_check vs p pmem vs.active_slot).2 = some hdr :=
    (Prod.mk.inj (Prod.mk.inj hc).2).1.symm
  have e3 : pmv = pm1 := (Prod.mk.inj (Prod.mk.inj hc).2).2
  have hchk : vslot_slot_check vs p pmem vs.active_slot = (ESP_OK, some hdr) := by
    rw [← e1, ← e2]
  obtain ⟨_, _, _, _, hfit⟩ := vslot_slot_check_ok vs p pmem vs.active_slot hdr hchk
  have hlock : fram_vslot_lock vs = ESP_OK := by
    unfold fram_vslot_lock
    rw [hmx]
    rfl
  refine ⟨?_, ?_, ?_, ?_⟩
  · intro hlt
    unfold fram_vslot_load
    simp only [hlen, hd, hlock, hv, hlt, if_true, Bool.not_true, Bool.false_eq_true, if_false,
      ne_eq, not_true_eq_false]
  · intro hb hl
    unfold fram_vslot_load
    simp only [hlen, hd, hlock, hv, hb, hl, if_true, Bool.not_true, Bool.false_eq_true,
      if_false, ne_eq, not_true_eq_false]
    split_ifs <;> rfl
  · intro buf hb hle
    by_cases c : hdr.len > 0
    · obtain ⟨pm2, hok2, r2⟩ := fram_pm_read_cases pmv p pmem
        ((fram_vslot_slot_offset vs vs.active_slot + VSLOT_HEADER_SIZE) % U32) hdr.len
        (e3 ▸ hok1) c
      rw [if_pos (hfit c)] at r2
      refine ⟨pm2, ?_⟩
      unfold fram_vslot_load
      simp only [hlen, hd, hlock, hv, hb, Nat.not_lt.mpr hle, c, if_true, Bool.not_true,
        Bool.false_eq_true, if_false, ne_eq, not_true_eq_false, hp, r2]
    · refine ⟨pmv, ?_⟩
      have h0 : hdr.len = 0 := by omega
      unfold fram_vslot_load
      simp only [hlen, hd, hlock, hv, Nat.not_lt.mpr hle, c, Bool.not_true,
        Bool.false_eq_true, if_false, ne_eq, not_true_eq_false, h0, mem_read_zero,
        List.nil_append, List.drop_zero]
      cases out with
      | mk pl ln =>
        simp only at hb ⊢
        rw [hb, if_neg (Nat.not_lt_zero _), if_neg (Nat.lt_irrefl 0)]
  · intro h0
    unfold fram_vslot_load
    simp only [hlen, hd, hlock, hv, h0, Nat.not_lt_zero, Nat.lt_irrefl, gt_iff_lt, if_false,
      Bool.not_true, Bool.false_eq_true, ne_eq, not_true_eq_false]

/-- Witness for C24: after the two saves of the vslot test on the erased
example partition the active slot holds four bytes; a load into a two-byte
buffer and a load with a `NULL` buffer are both refused with `*len = 4`. -/
theorem vslot_load_buffer_contract_witness :
    ∃ pmv, fram_vslot_load (example_vslot_run example_vslot_cfg example_vslot_entries).2.1
        (example_vslot_run example_vslot_cfg example_vslot_entries).2.2
        { payload := some [0, 0], len := some 2 } =
      (ESP_ERR_INVALID_SIZE, { payload := some [0, 0], len := some 4 }, pmv) ∧
      fram_vslot_load (example_vslot_run example_vslot_cfg example_vslot_entries).2.1
        (example_vslot_run example_vslot_cfg example_vslot_entries).2.2
        { payload := none, len := some 8 } =
      (ESP_ERR_INVALID_SIZE, { payload := none, len := some 4 }, pmv) := by
  have hi := example_vslot_init_ok example_vslot_cfg rfl rfl (by decide) (by decide) (by decide)
  have hrun := example_vslot_run_ok example_vslot_cfg rfl rfl (by decide) (by decide)
    (by decide) example_vslot_entries (by decide)
  obtain ⟨pmem2, g2, h2, inv2, _, hsc, _⟩ := vslot_run_spec example_K example_vslot0 _ _
    example_pm _ _ example_vslot_part (fun _ => 0xFF) example_vslot_cfg example_vslot_entries
    (by decide) (by decide) example_pm_vslot_ok hi.1 (fun _ _ => rfl) hi.2 hrun
  have hsc2 : (example_vslot_run example_vslot_cfg example_vslot_entries).2.1.slot_count = 2 :=
    hsc
  have hb := inv2.bounded 1 (by decide)
  have hrec := inv2.window 1 (by decide) (by
    rw [hsc2]
    decide)
  have has : (example_vslot_run example_vslot_cfg example_vslot_entries).2.1.active_slot
      = 1 % (example_vslot_run example_vslot_cfg example_vslot_entries).2.1.slot_count :=
    inv2.active_slot
  obtain ⟨pmv, hv, _⟩ := vslot_validate_rec _ example_vslot_part _ pmem2 (1 % _) (2 % U32) 20
    [0x22, 0x22, 0x22, 0x22] g2 h2 (Nat.mod_lt _ g2.slot_count_pos) (by decide) hb hrec
  rw [← has] at hv
  have hd : (example_vslot_run example_vslot_cfg example_vslot_entries).2.1.has_data = true :=
    inv2.has_data
  exact ⟨pmv,
    (vslot_load_buffer_contract _ example_vslot_part _ pmv pmem2 _
      { payload := some [0, 0], len := some 2 } 2 g2.part hd g2.mutex h2 hv rfl).1 (by decide),
    (vslot_load_buffer_contract _ example_vslot_part _ pmv pmem2 _
      { payload := none, len := some 8 } 8 g2.part hd g2.mutex h2 hv rfl).2.1 rfl (by decide)⟩

/-- C28. CRC32 chaining. For every seed `s` and byte strings `a` and `b`,
`fram_crc32_le (fram_crc32_le s a) b = fram_crc32_le s (a ++ b)`. Consequently,
on a working partition that holds the bytes `value` at `voff`, the value loop
of `fram_kvs_compute_crc`, which reads the value in chunks of at most 64
bytes, returns `ESP_OK` with the CRC that `fram_kvs_set` computes over the
same value in one call from the same 32-bit seed
(`len > 0 ? fram_crc32_le(crc, buf, len) : crc`), whatever the length of the
value. -/
theorem crc32_chaining (kvs : fram_kvs_t) (p : fram_partition_t) (pmem : Nat → Nat)
    (pm : fram_pm_t) (voff crc : Nat) (value : List Nat)
    (hp : kvs.part = some p) (h : PmOK pm p pmem) (hfit : voff + value.length ≤ p.size)
    (hc : crc < U32) (hval : mem_read pmem voff value.length = value) :
    (∀ s a b, fram_crc32_le (fram_crc32_le s a) b = fram_crc32_le s (a ++ b)) ∧
    ∃ pm1, fram_kvs_crc_loop kvs value.length pm voff value.length crc
      = (ESP_OK, if value.length > 0 then fram_crc32_le crc value else crc, pm1) := by
  refine ⟨fram_crc32_le_append, ?_⟩
  obtain ⟨pm1, hok, _⟩ := kvs_crc_loop_ok kvs p pmem hp value.length value.length voff crc pm
    (Nat.le_refl _) hfit hc h
  refine ⟨pm1, ?_⟩
  rw [hok, hval]
  by_cases c : value.length > 0
  · rw [if_pos c]
  · rw [if_neg c]
    have h0 : value = [] := List.length_eq_zero.mp (by omega)
    rw [h0, fram_crc32_le_nil _ hc]

/-- Witness for C28: a value of seventy bytes `0xFF` (two chunks) at offset 24
of the erased `"kvs"` partition of the tests. -/
theorem crc32_chaining_witness :
    (∀ s a b, fram_crc32_le (fram_crc32_le s a) b = fram_crc32_le s (a ++ b)) ∧
    ∃ pm1, fram_kvs_crc_loop
        { part := some example_kvs_part, magic := 0x4B56534D, write_offset := 0, next_seq := 0, ready := true, mutex := SemaphoreHandle_t.free }
        70 example_pm 24 70 0
      = (ESP_OK, fram_crc32_le 0 (List.replicate 70 0xFF), pm1) :=
  crc32_chaining
    { part := some example_kvs_part, magic := 0x4B56534D, write_offset := 0, next_seq := 0, ready := true, mutex := SemaphoreHandle_t.free }
    example_kvs_part (fun _ => 0xFF) example_pm 24 0 (List.replicate 70 0xFF) rfl
    example_pm_kvs_ok (by decide) (by decide) (by decide)

/-! ## The space check of the key-value store -/

theorem fram_hal_mock_write_no_mem (hal : fram_hal_t) (addr : Nat) (data : List Nat) :
    (fram_hal_mock_write hal addr data).1 ≠ ESP_ERR_NO_MEM := by
  unfold fram_hal_mock_write
  simp only
  split_ifs <;> exact fun h => esp_err_t.noConfusion h

theorem fram_dev_write_loop_no_mem (mt : Nat) :
    ∀ (fuel : Nat) (dev : fram_dev_t) (addr : Nat) (data : List Nat),
      (fram_dev_write_loop fuel dev addr data mt).1 ≠ ESP_ERR_NO_MEM := by
  intro fuel
  induction fuel with
  | zero =>
    intro dev addr data
    unfold fram_dev_write_loop
    split_ifs <;> exact fun h => esp_err_t.noConfusion h
  | succ fuel ih =>
    intro dev addr data
    unfold fram_dev_write_loop
    simp only
    generalize (if data.length > mt then mt else data.length) = chunk
    split_ifs with h1 h2
    · exact fun h => esp_err_t.noConfusion h
    · exact fram_hal_mock_write_no_mem _ _ _
    · exact ih _ _ _

theorem fram_dev_write_no_mem (dev : fram_dev_t) (offset : Nat) (data : List Nat) :
    (fram_dev_write dev offset data).1 ≠ ESP_ERR_NO_MEM := by
  unfold fram_dev_write
  split_ifs
  · exact fun h => esp_err_t.noConfusion h
  · exact fun h => esp_err_t.noConfusion h
  · unfold fram_dev_lock mutex_take
    cases dev.mutex <;> exact fun h => esp_err_t.noConfusion h
  · exact fram_dev_write_loop_no_mem _ _ _ _ _
  · exact fram_dev_write_loop_no_mem _ _ _ _ _

/-- The function `fram_pm_write` never reports `ESP_ERR_NO_MEM`. -/
theorem fram_pm_write_no_mem (pm : fram_pm_t) (part : Option fram_partition_t) (offset : Nat)
    (data : List Nat) : (fram_pm_write pm part offset data).1 ≠ ESP_ERR_NO_MEM := by
  unfold fram_pm_write
  cases part with
  | none => exact fun h => esp_err_t.noConfusion h
  | some p =>
    simp only
    split_ifs
    · exact fun h => esp_err_t.noConfusion h
    · exact fun h => esp_err_t.noConfusion h
    · exact fun h => esp_err_t.noConfusion h
    · exact fram_dev_write_no_mem _ _ _

/-- The record writes of `fram_kvs_set` and `fram_kvs_delete` never report
`ESP_ERR_NO_MEM`. -/
theorem fram_kvs_write_record_no_mem (kvs : fram_kvs_t) (pm : fram_pm_t)
    (hdr : fram_kvs_header_t) (key value : List Nat) :
    (fram_kvs_write_record kvs pm hdr key value).1 ≠ ESP_ERR_NO_MEM := by
  unfold fram_kvs_write_record fram_kvs_write_commit
  simp only
  split_ifs <;> exact fram_pm_write_no_mem _ _ _ _

/-- A call of `fram_kvs_set` that passes the 32-bit space check does not
report `ESP_ERR_NO_MEM`. -/
theorem kvs_set_check_passed (K : Kconfig) (kvs : fram_kvs_t) (p : fram_partition_t)
    (pm : fram_pm_t) (key value : List Nat) (hp : kvs.part = some p)
    (hchk : ¬ (kvs.write_offset + (KVS_HEADER_SIZE + key.length + value.length + 1) % U32) % U32
      > p.size) :
    (fram_kvs_set K kvs pm key value).1 ≠ ESP_ERR_NO_MEM := by
  intro hr
  unfold fram_kvs_set at hr
  simp only [hp, if_neg hchk] at hr
  split_ifs at hr <;>
    first
    | exact esp_err_t.noConfusion hr
    | exact fram_kvs_write_record_no_mem _ _ _ _ _ hr
    | (unfold fram_kvs_lock mutex_take at hr
       cases hm : kvs.mutex <;> rw [hm] at hr <;> exact esp_err_t.noConfusion hr)

/-- C25. KVS out-of-space. For every store with a partition `p` and an
available mutex, every key of 1 to 15 bytes and every value within the
configured maximum and 65535 bytes, such that the record end
`write_offset + 20 + kl + vl + 1` is below `2^32`: `fram_kvs_set` returns
`ESP_ERR_NO_MEM` exactly when `write_offset + 20 + kl + vl + 1 > p.size`, and
it then leaves the store (`write_offset`, `next_seq`) and the partition
manager with its media as they were; `fram_kvs_delete` likewise with
`vl = 0`. -/
theorem kvs_out_of_space (K : Kconfig) (kvs : fram_kvs_t) (p : fram_partition_t)
    (pm : fram_pm_t) (key value : List Nat) (hp : kvs.part = some p)
    (hmx : kvs.mutex = SemaphoreHandle_t.free)
    (hk : 1 ≤ key.length ∧ key.length ≤ FRAM_KVS_KEY_MAX)
    (hv : value.length ≤ K.FRAM_KVS_MAX_VALUE) (hv16 : value.length ≤ UINT16_MAX)
    (hno : kvs.write_offset + 20 + key.length + value.length + 1 < U32) :
    ((fram_kvs_set K kvs pm key value).1 = ESP_ERR_NO_MEM ↔
      kvs.write_offset + 20 + key.length + value.length + 1 > p.size) ∧
    (kvs.write_offset + 20 + key.length + value.length + 1 > p.size →
      fram_kvs_set K kvs pm key value = (ESP_ERR_NO_MEM, kvs, pm)) ∧
    ((fram_kvs_delete kvs pm key).1 = ESP_ERR_NO_MEM ↔
      kvs.write_offset + 20 + key.length + 0 + 1 > p.size) ∧
    (kvs.write_offset + 20 + key.length + 0 + 1 > p.size →
      fram_kvs_delete kvs pm key = (ESP_ERR_NO_MEM, kvs, pm)) := by
  have hlock : fram_kvs_lock kvs = ESP_OK := by
    unfold fram_kvs_lock
    rw [hmx]
    rfl
  have h20 : KVS_HEADER_SIZE = 20 := rfl
  have hU : U32 = 4294967296 := U32_eq
  have hkey : ¬ (key.length = 0 ∨ key.length > FRAM_KVS_KEY_MAX) := by omega
  have es : (kvs.write_offset + (KVS_HEADER_SIZE + key.length + value.length + 1) % U32) % U32
      = kvs.write_offset + 20 + key.length + value.length + 1 := by
    rw [h20, hU]
    omega
  have ed : (kvs.write_offset + (KVS_HEADER_SIZE + key.length + 0 + 1) % U32) % U32
      = kvs.write_offset + 20 + key.length + 0 + 1 := by
    rw [h20, hU]
    omega
  have hset : kvs.write_offset + 20 + key.length + value.length + 1 > p.size →
      fram_kvs_set K kvs pm key value = (ESP_ERR_NO_MEM, kvs, pm) := by
    intro hgt
    unfold fram_kvs_set
    rw [if_neg hkey, if_neg (by omega), if_neg (by omega), if_neg (by rw [hlock]; decide)]
    simp only [hp, es, if_pos hgt]
  have hdel : kvs.write_offset + 20 + key.length + 0 + 1 > p.size →
      fram_kvs_delete kvs pm key = (ESP_ERR_NO_MEM, kvs, pm) := by
    intro hgt
    unfold fram_kvs_delete
    rw [if_neg hkey, if_neg (by rw [hlock]; decide)]
    simp only [hp, ed, if_pos hgt]
  refine ⟨⟨?_, fun hgt => by rw [hset hgt]⟩, hset, ⟨?_, fun hgt => by rw [hdel hgt]⟩,
    hdel⟩
  · intro hr
    by_contra hgt
    unfold fram_kvs_set at hr
    rw [if_neg hkey, if_neg (by omega), if_neg (by omega), if_neg (by rw [hlock]; decide)] at hr
    simp only [hp, es, if_neg hgt] at hr
    split_ifs at hr with hw <;>
      first
      | exact esp_err_t.noConfusion hr
      | exact fram_kvs_write_record_no_mem _ _ _ _ _ hr
  · intro hr
    by_contra hgt
    unfold fram_kvs_delete at hr
    rw [if_neg hkey, if_neg (by rw [hlock]; decide)] at hr
    simp only [hp, ed, if_neg hgt] at hr
    split_ifs at hr with hw
    first
      | exact esp_err_t.noConfusion hr
      | exact fram_kvs_write_record_no_mem _ _ _ _ _ hr

/-- Witness for C25: a store on the 4096-byte `"kvs"` partition of the tests
whose log ends at offset 4090; the record of `set("a", "one", 3)` needs 25
bytes, and so does not fit. -/
theorem kvs_out_of_space_witness :
    fram_kvs_set example_K
      { part := some example_kvs_part, magic := 0x4B56534D, write_offset := 4090, next_seq := 5, ready := true, mutex := SemaphoreHandle_t.free }
      example_pm [0x61] [0x6F, 0x6E, 0x65]
    = (ESP_ERR_NO_MEM,
      { part := some example_kvs_part, magic := 0x4B56534D, write_offset := 4090, next_seq := 5, ready := true, mutex := SemaphoreHandle_t.free },
      example_pm) :=
  (kvs_out_of_space example_K
    { part := some example_kvs_part, magic := 0x4B56534D, write_offset := 4090, next_seq := 5, ready := true, mutex := SemaphoreHandle_t.free }
    example_kvs_part example_pm [0x61] [0x6F, 0x6E, 0x65] rfl rfl (by decide) (by decide)
    (by decide) (by decide)).2.1 (by decide)

/-- Counterexample for C25: on a partition of `2^32 - 2` bytes, after
171798690 successful calls `set("a", "one", 3)` the store ends at
`write_offset = 2^32 - 46`. The record of `set("a", value, 28)` needs 50 bytes,
so `write_offset + 20 + kl + vl + 1 = 2^32 + 4` exceeds the partition size;
the 32-bit sum of the space check wraps to 4 and the call does not return
`ESP_ERR_NO_MEM`. -/
theorem kvs_out_of_space_counterexample :
    (example_kvs_run example_big_pm example_big_ops2).1 = ESP_OK ∧
    (example_kvs_run example_big_pm example_big_ops2).2.1.part = some example_big_part ∧
    (example_kvs_run example_big_pm example_big_ops2).2.1.mutex = SemaphoreHandle_t.free ∧
    (example_kvs_run example_big_pm example_big_ops2).2.1.write_offset = 4294967250 ∧
    (example_kvs_run example_big_pm example_big_ops2).2.1.write_offset + 20
      + [0x61].length + (List.replicate 28 0x6F).length + 1 > example_big_part.size ∧
    (fram_kvs_set example_K (example_kvs_run example_big_pm example_big_ops2).2.1
      (example_kvs_run example_big_pm example_big_ops2).2.2 [0x61]
      (List.replicate 28 0x6F)).1 ≠ ESP_ERR_NO_MEM := by
  obtain ⟨_, hrun, pmem2, _, he2, _⟩ :=
    example_kvs_fail_facts example_big_pm example_big_part 4294967295 example_big_ops2 2
      example_big_set example_big_pm_ok example_big_find example_big_valid2
      (by rw [example_big_size2]; decide) (by decide) (by decide)
  have ha2 := he2.after
  have hwo : (example_kvs_run example_big_pm example_big_ops2).2.1.write_offset = 4294967250 := by
    rw [ha2.offset, example_big_size2]
  have hchk : ¬ ((example_kvs_run example_big_pm example_big_ops2).2.1.write_offset
      + (KVS_HEADER_SIZE + [0x61].length + (List.replicate 28 0x6F).length + 1) % U32) % U32
      > example_big_part.size := by
    rw [hwo]
    decide
  refine ⟨by rw [hrun], ha2.part, ha2.mutex, hwo, by rw [hwo]; decide, ?_⟩
  exact kvs_set_check_passed example_K _ example_big_part _ [0x61] (List.replicate 28 0x6F)
    ha2.part hchk

/-! ## Ring iteration -/

/-- The loop of `fram_ring_iterate` over the last `r` records of a ring built
by the appends `es`: it does what the specification says on those records. -/
theorem ring_iterate_loop_spec {σ : Type} (K : Kconfig) (ring : fram_ring_t)
    (p : fram_partition_t) (pmem : Nat → Nat) (es : List (List Nat × Nat))
    (cb : fram_ring_iter_fn σ) (g : RingGeom ring p) (inv : RingAfter ring pmem es)
    (hK : ring.max_payload ≤ K.FRAM_RING_MAX_PAYLOAD) :
    ∀ (r : Nat), r ≤ min es.length ring.capacity →
      ∀ (pm : fram_pm_t) (buf : List Nat) (ctx : σ), PmOK pm p pmem →
        ∃ pm1, fram_ring_iterate_loop K ring cb r pm ((es.length - r) % ring.capacity) buf ctx
          = ((ring_iterate_spec cb (ring_records_from es (es.length - r) r) buf ctx).1,
             (ring_iterate_spec cb (ring_records_from es (es.length - r) r) buf ctx).2, pm1) := by
  have hcpos := g.capacity_pos
  intro r
  induction r with
  | zero =>
    intro _ pm buf ctx _
    exact ⟨pm, rfl⟩
  | succ r ih =>
    intro hr pm buf ctx h
    have hsmall := ring_capacity_small ring p pm pmem g h
    have hn : r + 1 ≤ es.length := Nat.le_trans hr (Nat.min_le_left _ _)
    have hc : r + 1 ≤ ring.capacity := Nat.le_trans hr (Nat.min_le_right _ _)
    have hb := inv.bounded (es.length - (r + 1)) (by omega)
    have hrec := inv.window (es.length - (r + 1)) (by omega) (by omega)
    obtain ⟨pm1, hrd, hok1⟩ := ring_read_slot_rec ring p pm pmem
      ((es.length - (r + 1)) % ring.capacity) ((es.length - (r + 1)) % U32)
      (es.getD (es.length - (r + 1)) ([], 0)).2 (es.getD (es.length - (r + 1)) ([], 0)).1 buf
      K.FRAM_RING_MAX_PAYLOAD 0 0 g h (Nat.mod_lt _ hcpos) (Nat.mod_lt _ (by decide)) hb.1 hb.2
      (Nat.le_trans hb.1 hK) hrec
    have hnext : (((es.length - (r + 1)) % ring.capacity + 1) % U32) % ring.capacity
        = (es.length - r) % ring.capacity := by
      have hlt := Nat.mod_lt (es.length - (r + 1)) hcpos
      have e1 : ((es.length - (r + 1)) % ring.capacity + 1) % U32
          = (es.length - (r + 1)) % ring.capacity + 1 :=
        Nat.mod_eq_of_lt (by rw [U32_eq] at hsmall ⊢; omega)
      rw [e1, Nat.mod_add_mod]
      congr 1
      omega
    have hstart : es.length - (r + 1) + 1 = es.length - r := by omega
    obtain ⟨pm2, hih⟩ := ih (by omega) pm1
      ((es.getD (es.length - (r + 1)) ([], 0)).1
        ++ buf.drop (es.getD (es.length - (r + 1)) ([], 0)).1.length)
      (cb ((es.length - (r + 1)) % U32) ((es.getD (es.length - (r + 1)) ([], 0)).2 % U64)
        ((es.getD (es.length - (r + 1)) ([], 0)).1
          ++ buf.drop (es.getD (es.length - (r + 1)) ([], 0)).1.length)
        (es.getD (es.length - (r + 1)) ([], 0)).1.length ctx).2 hok1
    rw [fram_ring_iterate_loop, ring_records_from, ring_iterate_spec]
    simp only [hrd, ne_eq, not_true_eq_false, if_false, Option.getD_some, hnext, hstart]
    by_cases hcb : (cb ((es.length - (r + 1)) % U32)
        ((es.getD (es.length - (r + 1)) ([], 0)).2 % U64)
        ((es.getD (es.length - (r + 1)) ([], 0)).1
          ++ buf.drop (es.getD (es.length - (r + 1)) ([], 0)).1.length)
        (es.getD (es.length - (r + 1)) ([], 0)).1.length ctx).1 = ESP_OK
    · simp only [hcb, not_true_eq_false, if_false]
      exact ⟨pm2, hih⟩
    · simp only [hcb, not_false_eq_true, if_true]
      exact ⟨pm1, rfl⟩

theorem ring_records_from_length (es : List (List Nat × Nat)) :
    ∀ (count start : Nat), (ring_records_from es start count).length = count := by
  intro count
  induction count with
  | zero => intro _; rfl
  | succ c ih =>
    intro start
    rw [ring_records_from, List.length_cons, ih]

theorem ring_records_from_getD (es : List (List Nat × Nat)) (d : Nat × Nat × List Nat) :
    ∀ (count start k : Nat), k < count →
      (ring_records_from es start count).getD k d
        = ((start + k) % U32, (es.getD (start + k) ([], 0)).2 % U64,
            (es.getD (start + k) ([], 0)).1) := by
  intro count
  induction count with
  | zero => intro _ k hk; omega
  | succ c ih =>
    intro start k hk
    rw [ring_records_from]
    cases k with
    | zero => rfl
    | succ k =>
      rw [List.getD_cons_succ, ih (start + 1) k (by omega)]
      have e : start + 1 + k = start + (k + 1) := by omega
      rw [e]

/-- The iteration of the specification with a recording callback: the calls
recorded and the code returned. -/
theorem ring_iterate_spec_record (v : Nat → esp_err_t) :
    ∀ (recs : List (Nat × Nat × List Nat)) (buf : List Nat)
      (calls : List (Nat × List Nat × Nat)),
      ((∀ k, k < recs.length → v (calls.length + k) = ESP_OK) →
        ring_iterate_spec (ring_iter_record v) recs buf calls
          = (ESP_OK, calls ++ recs.map ring_call_of)) ∧
      (∀ j, j < recs.length → v (calls.length + j) ≠ ESP_OK →
        (∀ k, k < j → v (calls.length + k) = ESP_OK) →
        ring_iterate_spec (ring_iter_record v) recs buf calls
          = (v (calls.length + j), calls ++ (recs.take (j + 1)).map ring_call_of)) := by
  intro recs
  induction recs with
  | nil =>
    intro buf calls
    refine ⟨fun _ => ?_, fun j hj _ _ => absurd hj (Nat.not_lt_zero _)⟩
    rw [ring_iterate_spec, List.map_nil, List.append_nil]
  | cons r rest ih =>
    intro buf calls
    have htake : (r.2.2 ++ buf.drop r.2.2.length).take r.2.2.length = r.2.2 := by
      rw [List.take_append_of_le_length (Nat.le_refl _), List.take_length]
    have hcall : ring_iter_record v r.1 r.2.1 (r.2.2 ++ buf.drop r.2.2.length) r.2.2.length calls
        = (v calls.length, calls ++ [ring_call_of r]) := by
      unfold ring_iter_record ring_call_of
      rw [htake]
    have hlen : (calls ++ [ring_call_of r]).length = calls.length + 1 := by
      rw [List.length_append]
      rfl
    obtain ⟨ih1, ih2⟩ := ih (r.2.2 ++ buf.drop r.2.2.length) (calls ++ [ring_call_of r])
    rw [hlen] at ih1 ih2
    constructor
    · intro hall
      have h0 : v calls.length = ESP_OK := hall 0 (Nat.succ_pos _)
      rw [ring_iterate_spec]
      simp only [hcall, h0, ne_eq, not_true_eq_false, if_false]
      rw [ih1 (fun k hk => by
        have := hall (k + 1) (by rw [List.length_cons]; omega)
        rw [← this]
        congr 1
        omega)]
      rw [List.map_cons, List.append_assoc]
      rfl
    · intro j hj hbad hgood
      cases j with
      | zero =>
        rw [Nat.add_zero] at hbad
        rw [ring_iterate_spec]
        simp only [hcall]
        rw [if_pos hbad, Nat.add_zero, Nat.zero_add, List.take_succ_cons, List.take_zero,
          List.map_cons, List.map_nil]
      | succ j =>
        have h0 : v calls.length = ESP_OK := hgood 0 (Nat.succ_pos _)
        rw [ring_iterate_spec]
        simp only [hcall, h0, ne_eq, not_true_eq_false, if_false]
        have e : calls.length + 1 + j = calls.length + (j + 1) := by omega
        rw [ih2 j (by rw [List.length_cons] at hj; omega) (by rw [e]; exact hbad)
          (fun k hk => by
            have := hgood (k + 1) (by omega)
            rw [← this]
            congr 1
            omega)]
        rw [e, List.take_succ_cons, List.map_cons, List.append_assoc]
        rfl

/-- The function `fram_ring_iterate` on a ring built by the appends `es`: it
does what the specification says on the live records. -/
theorem ring_iterate_after {σ : Type} (K : Kconfig) (ring : fram_ring_t) (p : fram_partition_t)
    (pm : fram_pm_t) (pmem : Nat → Nat) (es : List (List Nat × Nat))
    (cb : fram_ring_iter_fn σ) (ctx : σ) (buf : List Nat)
    (g : RingGeom ring p) (h : PmOK pm p pmem) (inv : RingAfter ring pmem es)
    (hK : ring.max_payload ≤ K.FRAM_RING_MAX_PAYLOAD) :
    ∃ pm1, fram_ring_iterate K ring pm (some cb) ctx buf
      = ((ring_iterate_spec cb (ring_live_records es ring.capacity) buf ctx).1,
         (ring_iterate_spec cb (ring_live_records es ring.capacity) buf ctx).2, pm1) := by
  have hcpos := g.capacity_pos
  by_cases h0 : ring.count = 0
  · refine ⟨pm, ?_⟩
    have hm : min es.length ring.capacity = 0 := by rw [← inv.count]; exact h0
    unfold fram_ring_iterate ring_live_records
    simp only [h0, or_true, if_true, hm]
    rfl
  · have hlock : fram_ring_lock ring = ESP_OK := by
      unfold fram_ring_lock
      rw [g.mutex]
      rfl
    have htail : ring.tail_slot
        = (es.length - min es.length ring.capacity) % ring.capacity := by
      rw [inv.tail_slot, Nat.min_def]
      by_cases c : es.length ≤ ring.capacity
      · rw [if_pos c, if_pos c, Nat.sub_self, Nat.zero_mod]
      · rw [if_neg c, if_neg c]
        exact Nat.mod_eq_sub_mod (by omega)
    obtain ⟨pm1, hl⟩ := ring_iterate_loop_spec K ring p pmem es cb g inv hK
      (min es.length ring.capacity) (Nat.le_refl _) pm buf ctx h
    refine ⟨pm1, ?_⟩
    unfold fram_ring_iterate ring_live_records
    simp only [g.ready, Bool.not_true, Bool.false_eq_true, h0, or_self, if_false, hlock, ne_eq,
      not_true_eq_false]
    rw [inv.count, htail]
    exact hl

/-- C26. Ring iterate visits the live log oldest-first. For a ring built on a
working, erased partition by `fram_ring_init` and `n` successful appends
`entries`, with `m = min n capacity`: for every callback, context and local
buffer content `fram_ring_iterate` does what the specification's iteration
does on the live records, which are the last `m` appended records in append
order, record `k` of them carrying the seq `(n - m + k) mod 2^32`, its time
stamp and its payload; the seqs increase by exactly 1 modulo `2^32`, and by
exactly 1 when `n ≤ 2^32`. With a callback that records its calls: when every
call returns `ESP_OK` exactly the `m` calls of the live records are made (none
for an empty ring), each with its seq, payload bytes and length, and `ESP_OK`
is returned; when call `j` is the first to return another code, the calls of
the first `j + 1` live records are made, no further one, and that code is
returned. -/
theorem ring_iterate_live_log (K : Kconfig) (ring0 ring1 ring2 : fram_ring_t)
    (pm pm1 pm2 : fram_pm_t) (p : fram_partition_t) (pmem : Nat → Nat)
    (cfg : fram_ring_config_t) (entries : List (List Nat × Nat))
    (hK : K.FRAM_RING_MAX_PAYLOAD + RING_HEADER_SIZE + 1 < U32) (hmagic : cfg.magic < U32)
    (h : PmOK pm p pmem) (hfind : fram_pm_find pm cfg.partition_name = some p)
    (herased : ∀ i, i < p.size → pmem i = 0xFF)
    (hinit : fram_ring_init K ring0 pm cfg = (ESP_OK, ring1, pm1))
    (happ : fram_ring_append_all ring1 pm1 entries = (ESP_OK, ring2, pm2)) :
    (∀ (σ : Type) (cb : fram_ring_iter_fn σ) (ctx : σ) (buf : List Nat),
      ∃ pm3, fram_ring_iterate K ring2 pm2 (some cb) ctx buf
        = ((ring_iterate_spec cb (ring_live_records entries ring2.capacity) buf ctx).1,
           (ring_iterate_spec cb (ring_live_records entries ring2.capacity) buf ctx).2, pm3)) ∧
    (ring_live_records entries ring2.capacity).length = min entries.length ring2.capacity ∧
    (∀ k, k < min entries.length ring2.capacity →
      (ring_live_records entries ring2.capacity).getD k (0, 0, [])
        = ((entries.length - min entries.length ring2.capacity + k) % U32,
           (entries.getD (entries.length - min entries.length ring2.capacity + k) ([], 0)).2
             % U64,
           (entries.getD (entries.length - min entries.length ring2.capacity + k) ([], 0)).1)) ∧
    (∀ k, k + 1 < min entries.length ring2.capacity →
      ((ring_live_records entries ring2.capacity).getD (k + 1) (0, 0, [])).1
        = (((ring_live_records entries ring2.capacity).getD k (0, 0, [])).1 + 1) % U32 ∧
      (entries.length ≤ U32 →
        ((ring_live_records entries ring2.capacity).getD (k + 1) (0, 0, [])).1
          = ((ring_live_records entries ring2.capacity).getD k (0, 0, [])).1 + 1)) ∧
    (∀ (v : Nat → esp_err_t) (buf : List Nat),
      (∀ k, k < min entries.length ring2.capacity → v k = ESP_OK) →
      ∃ pm3, fram_ring_iterate K ring2 pm2 (some (ring_iter_record v)) [] buf
        = (ESP_OK, (ring_live_records entries ring2.capacity).map ring_call_of, pm3)) ∧
    (∀ (v : Nat → esp_err_t) (buf : List Nat) (j : Nat),
      j < min entries.length ring2.capacity → v j ≠ ESP_OK → (∀ k, k < j → v k = ESP_OK) →
      ∃ pm3, fram_ring_iterate K ring2 pm2 (some (ring_iter_record v)) [] buf
        = (v j, ((ring_live_records entries ring2.capacity).take (j + 1)).map ring_call_of,
            pm3)) := by
  obtain ⟨pmem2, g2, h2, inv2, hr1, _, hmp, _⟩ := ring_run_spec K ring0 ring1 ring2 pm pm1 pm2 p
    pmem cfg entries hK hmagic h hfind herased hinit happ
  obtain ⟨_, hcfg, _⟩ := ring_init_ok_cfg K ring0 ring1 pm pm1 p cfg hfind hK hinit
  have hmax : ring2.max_payload ≤ K.FRAM_RING_MAX_PAYLOAD := by
    rw [hmp, hr1]
    exact hcfg
  have hlen : (ring_live_records entries ring2.capacity).length
      = min entries.length ring2.capacity := ring_records_from_length _ _ _
  have hget : ∀ k, k < min entries.length ring2.capacity →
      (ring_live_records entries ring2.capacity).getD k (0, 0, [])
        = ((entries.length - min entries.length ring2.capacity + k) % U32,
           (entries.getD (entries.length - min entries.length ring2.capacity + k) ([], 0)).2
             % U64,
           (entries.getD (entries.length - min entries.length ring2.capacity + k) ([], 0)).1) :=
    fun k hk => ring_records_from_getD entries _ _ _ k hk
  refine ⟨fun σ cb ctx buf => ring_iterate_after K ring2 p pm2 pmem2 entries cb ctx buf g2 h2
    inv2 hmax, hlen, hget, ?_, ?_, ?_⟩
  · intro k hk
    rw [hget k (by omega), hget (k + 1) hk]
    have e : entries.length - min entries.length ring2.capacity + (k + 1)
        = entries.length - min entries.length ring2.capacity + k + 1 := by omega
    refine ⟨?_, fun hn => ?_⟩
    · show (entries.length - min entries.length ring2.capacity + (k + 1)) % U32 = _
      rw [e, Nat.mod_add_mod]
    · show (entries.length - min entries.length ring2.capacity + (k + 1)) % U32
        = (entries.length - min entries.length ring2.capacity + k) % U32 + 1
      have hm := Nat.min_le_left entries.length ring2.capacity
      rw [Nat.mod_eq_of_lt (by omega), Nat.mod_eq_of_lt (by omega)]
      omega
  · intro v buf hall
    obtain ⟨pm3, hi⟩ := ring_iterate_after K ring2 p pm2 pmem2 entries (ring_iter_record v) []
      buf g2 h2 inv2 hmax
    refine ⟨pm3, ?_⟩
    rw [hi, (ring_iterate_spec_record v _ buf []).1 (fun k hk => by
      rw [List.length_nil, Nat.zero_add]
      exact hall k (by rw [← hlen]; exact hk))]
    rw [List.nil_append]
  · intro v buf j hj hbad hgood
    obtain ⟨pm3, hi⟩ := ring_iterate_after K ring2 p pm2 pmem2 entries (ring_iter_record v) []
      buf g2 h2 inv2 hmax
    refine ⟨pm3, ?_⟩
    rw [hi, (ring_iterate_spec_record v _ buf []).2 j (by rw [hlen]; exact hj)
      (by rw [List.length_nil, Nat.zero_add]; exact hbad)
      (fun k hk => by
        rw [List.length_nil, Nat.zero_add]
        exact hgood k hk)]
    rw [List.nil_append, List.length_nil, Nat.zero_add]

/-- Witness for C26: the three appends of the ring test on the erased example
partition, then `fram_ring_iterate` with a callback that records its calls and
always returns `ESP_OK`: three calls, with the seqs 0, 1, 2. -/
theorem ring_iterate_live_log_witness :
    ∃ pm3, fram_ring_iterate example_K (example_ring_run example_ring_entries).2.1
        (example_ring_run example_ring_entries).2.2
        (some (ring_iter_record (fun _ => ESP_OK))) [] (List.replicate 256 0)
      = (ESP_OK, [(0, [0xA5, 0xA5, 0xA5, 0xA5], 4), (1, [0xA6, 0xA5, 0xA5, 0xA5], 4),
          (2, [0xA7, 0xA5, 0xA5, 0xA5], 4)], pm3) := by
  have hrun := example_ring_run_ok example_ring_entries (by decide)
  obtain ⟨_, _, _, _, hr1, hcap, _⟩ := ring_run_spec example_K example_ring0 _ _ example_pm _ _
    example_ring_part (fun _ => 0xFF) example_ring_cfg example_ring_entries (by decide)
    (by decide) example_pm_ring_ok example_ring_find (fun _ _ => rfl) example_ring_init_ok hrun
  have hc : (example_ring_run example_ring_entries).2.1.capacity = 99 := by
    rw [hcap, hr1]
    exact example_ring_empty_capacity
  obtain ⟨pm3, hi⟩ := (ring_iterate_live_log example_K example_ring0 _ _ example_pm _ _
    example_ring_part (fun _ => 0xFF) example_ring_cfg example_ring_entries (by decide)
    (by decide) example_pm_ring_ok example_ring_find (fun _ _ => rfl) example_ring_init_ok
    hrun).2.2.2.2.1 (fun _ => ESP_OK) (List.replicate 256 0) (fun _ _ => rfl)
  rw [hc] at hi
  exact ⟨pm3, hi⟩

/-- Counterexample for C26: on the example ring (capacity 99), after
`fram_ring_init` and `2^32 + 2` successful appends, `fram_ring_iterate` with a
callback that records its calls and always returns `ESP_OK` returns `ESP_OK`
after 99 calls, and the calls number 96 and 97 carry the seqs `2^32 - 1` and
`0`: the seq does not increase by 1 there. -/
theorem ring_iterate_live_log_counterexample :
    example_ring_wrap.length = 4294967298 ∧
    fram_ring_append_all
      (fram_ring_init example_K example_ring0 example_pm example_ring_cfg).2.1
      (fram_ring_init example_K example_ring0 example_pm example_ring_cfg).2.2
      example_ring_wrap =
      (ESP_OK, (example_ring_run example_ring_wrap).2.1,
        (example_ring_run example_ring_wrap).2.2) ∧
    ∃ calls pm3, fram_ring_iterate example_K (example_ring_run example_ring_wrap).2.1
        (example_ring_run example_ring_wrap).2.2
        (some (ring_iter_record (fun _ => ESP_OK))) [] (List.replicate 256 0)
      = (ESP_OK, calls, pm3) ∧ calls.length = 99 ∧
      (calls.getD 96 (0, [], 0)).1 = 4294967295 ∧ (calls.getD 97 (0, [], 0)).1 = 0 := by
  have hrun := example_ring_run_ok example_ring_wrap example_ring_wrap_bounded
  obtain ⟨pmem2, g2, h2, inv2, hr1, hcap, hmp, _⟩ := ring_run_spec example_K example_ring0 _ _
    example_pm _ _ example_ring_part (fun _ => 0xFF) example_ring_cfg example_ring_wrap
    (by decide) (by decide) example_pm_ring_ok example_ring_find (fun _ _ => rfl)
    example_ring_init_ok hrun
  have hc : (example_ring_run example_ring_wrap).2.1.capacity = 99 := by
    rw [hcap, hr1]
    exact example_ring_empty_capacity
  have hmax : (example_ring_run example_ring_wrap).2.1.max_payload
      ≤ example_K.FRAM_RING_MAX_PAYLOAD := by
    rw [hmp, hr1]
    decide
  obtain ⟨pm3, hi⟩ := ring_iterate_after example_K _ example_ring_part _ pmem2
    example_ring_wrap (ring_iter_record (fun _ => ESP_OK)) [] (List.replicate 256 0) g2 h2 inv2
    hmax
  rw [(ring_iterate_spec_record (fun _ => ESP_OK) _ (List.replicate 256 0) []).1
    (fun _ _ => rfl), List.nil_append, hc] at hi
  have hm : min example_ring_wrap.length 99 = 99 := by
    rw [example_ring_wrap_length]
    decide
  have hd : ((0, [], 0) : Nat × List Nat × Nat) = ring_call_of (0, 0, []) := rfl
  have hseq : ∀ k, k < 99 →
      (((ring_live_records example_ring_wrap 99).map ring_call_of).getD k (0, [], 0)).1
        = (4294967199 + k) % U32 := by
    intro k hk
    rw [hd, List.getD_map]
    unfold ring_live_records
    rw [ring_records_from_getD _ _ _ _ k (by rw [hm]; exact hk), hm, example_ring_wrap_length]
    rfl
  refine ⟨example_ring_wrap_length, hrun, _, pm3, hi, ?_, ?_, ?_⟩
  · rw [List.length_map]
    unfold ring_live_records
    rw [ring_records_from_length, hm]
  · rw [hseq 96 (by decide)]
    decide
  · rw [hseq 97 (by decide)]
    decide

/-! ## Ring recovery on an arbitrary partition content -/

/-- The slot check only looks at the geometry fields of the ring. -/
theorem ring_slot_check_congr (r1 r2 : fram_ring_t) (p : fram_partition_t) (pmem : Nat → Nat)
    (slot : Nat) (h2 : r1.entry_size = r2.entry_size)
    (h3 : r1.max_payload = r2.max_payload) (h4 : r1.magic = r2.magic) :
    ring_slot_check r1 p pmem slot = ring_slot_check r2 p pmem slot := by
  unfold ring_slot_check fram_ring_commit_offset fram_ring_slot_offset
  simp only [h2, h3, h4]

theorem ring_slot_seq_congr (r1 r2 : fram_ring_t) (p : fram_partition_t) (pmem : Nat → Nat)
    (slot : Nat) (h2 : r1.entry_size = r2.entry_size)
    (h3 : r1.max_payload = r2.max_payload) (h4 : r1.magic = r2.magic) :
    ring_slot_seq r1 p pmem slot = ring_slot_seq r2 p pmem slot := by
  unfold ring_slot_seq
  rw [ring_slot_check_congr r1 r2 p pmem slot h2 h3 h4]

/-- The slot check either accepts the slot with a header or refuses it with an
error code and no header. -/
theorem ring_slot_check_cases (ring : fram_ring_t) (p : fram_partition_t) (pmem : Nat → Nat)
    (slot : Nat) :
    (∃ hdr, ring_slot_check ring p pmem slot = (ESP_OK, some hdr)) ∨
    (∃ err, err ≠ ESP_OK ∧ ring_slot_check ring p pmem slot = (err, none)) := by
  unfold ring_slot_check
  simp only
  split_ifs <;>
    first
    | exact Or.inl ⟨_, rfl⟩
    | exact Or.inr ⟨ESP_ERR_NOT_FOUND, by decide, rfl⟩
    | exact Or.inr ⟨ESP_ERR_INVALID_SIZE, by decide, rfl⟩
    | exact Or.inr ⟨ESP_ERR_INVALID_CRC, by decide, rfl⟩

/-- Slot validation on a working partition against the sequence numbers
`ring_slot_seq` reads off the partition bytes. -/
theorem ring_validate_seq (ring : fram_ring_t) (p : fram_partition_t) (pm : fram_pm_t)
    (pmem : Nat → Nat) (slot : Nat) (hp : ring.part = some p) (h : PmOK pm p pmem) :
    ∃ pm1, PmOK pm1 p pmem ∧
      ((∃ hdr, ring_slot_seq ring p pmem slot = some hdr.seq ∧
          fram_ring_validate_slot ring pm slot = (ESP_OK, some hdr, pm1)) ∨
       (∃ err, err ≠ ESP_OK ∧ ring_slot_seq ring p pmem slot = none ∧
          fram_ring_validate_slot ring pm slot = (err, none, pm1))) := by
  obtain ⟨pm1, hok, hv⟩ := ring_validate_check ring p pm pmem slot hp h
  refine ⟨pm1, hok, ?_⟩
  rcases ring_slot_check_cases ring p pmem slot with ⟨hdr, hc⟩ | ⟨err, he, hc⟩
  · refine Or.inl ⟨hdr, ?_, ?_⟩
    · unfold ring_slot_seq
      rw [hc]
    · rw [hv, hc]
  · refine Or.inr ⟨err, he, ?_, ?_⟩
    · unfold ring_slot_seq
      rw [hc]
      cases err <;> first | exact absurd rfl he | rfl
    · rw [hv, hc]

/-- The first recovery loop on a working partition computes the scan of the
sequence numbers of the slots. -/
theorem ring_scan_check_eq (ring : fram_ring_t) (p : fram_partition_t) (pmem : Nat → Nat)
    (hp : ring.part = some p) :
    ∀ (slots : List Nat) (st : ring_scan_t) (pm : fram_pm_t), PmOK pm p pmem →
      ∃ pm1, fram_ring_init_scan ring slots st pm
          = (ring_scan_view (ring_slot_seq ring p pmem) slots st, pm1) ∧
        PmOK pm1 p pmem := by
  intro slots
  induction slots with
  | nil =>
    intro st pm h
    exact ⟨pm, rfl, h⟩
  | cons slot rest ih =>
    intro st pm h
    obtain ⟨pm1, hok, hcase⟩ := ring_validate_seq ring p pm pmem slot hp h
    rcases hcase with ⟨hdr, hv, hval⟩ | ⟨err, he, hv, hval⟩
    · simp only [fram_ring_init_scan, ring_scan_view, hval, hv]
      split_ifs
      · exact ih _ pm1 hok
      · exact ih _ pm1 hok
    · simp only [fram_ring_init_scan, ring_scan_view, hval, hv]
      cases err <;> first | exact absurd rfl he | exact ih _ pm1 hok

/-- The second recovery loop on a working partition computes the walk over
the sequence numbers of the slots. -/
theorem ring_walk_check_eq (ring : fram_ring_t) (p : fram_partition_t) (pmem : Nat → Nat)
    (hp : ring.part = some p) :
    ∀ (fuel : Nat) (pm : fram_pm_t) (run_len expected_seq slot : Nat), PmOK pm p pmem →
      ∃ pm1, fram_ring_init_walk ring fuel pm run_len expected_seq slot
          = (ring_walk_view (ring_slot_seq ring p pmem) ring.capacity fuel run_len expected_seq
              slot, pm1) ∧
        PmOK pm1 p pmem := by
  intro fuel
  induction fuel with
  | zero =>
    intro pm run_len expected_seq slot h
    exact ⟨pm, rfl, h⟩
  | succ fuel ih =>
    intro pm run_len expected_seq slot h
    by_cases hr : run_len < ring.capacity
    · obtain ⟨pm1, hok, hcase⟩ := ring_validate_seq ring p pm pmem slot hp h
      rcases hcase with ⟨hdr, hv, hval⟩ | ⟨err, he, hv, hval⟩
      · simp only [fram_ring_init_walk, ring_walk_view, hval, hv, hr, if_true]
        by_cases he : hdr.seq = expected_seq
        · simp only [he, ne_eq, not_true_eq_false, if_false]
          by_cases hc : (run_len + 1) % U32 ≥ ring.capacity
          · simp only [hc, if_true]
            exact ⟨pm1, rfl, hok⟩
          · simp only [hc, if_false]
            exact ih pm1 _ _ _ hok
        · simp only [ne_eq, he, not_false_eq_true, if_true]
          exact ⟨pm1, rfl, hok⟩
      · simp only [fram_ring_init_walk, ring_walk_view, hval, hv, hr, if_true]
        cases err <;> first | exact absurd rfl he | exact ⟨pm1, rfl, hok⟩
    · simp only [fram_ring_init_walk, ring_walk_view, hr, if_false]
      exact ⟨pm, rfl, h⟩

/-- The function `fram_ring_init` on a working partition of any content: it
computes the recovered ring from the sequence numbers of the slots that
validate. -/
theorem ring_init_check (K : Kconfig) (ring0 : fram_ring_t) (pm : fram_pm_t)
    (p : fram_partition_t) (pmem : Nat → Nat) (cfg : fram_ring_config_t)
    (hfind : fram_pm_find pm cfg.partition_name = some p) (h : PmOK pm p pmem)
    (hmp : 0 < cfg.max_payload) (hle : cfg.max_payload ≤ K.FRAM_RING_MAX_PAYLOAD)
    (hK : K.FRAM_RING_MAX_PAYLOAD + RING_HEADER_SIZE + 1 < U32) (hmagic : cfg.magic < U32)
    (hcap : RING_HEADER_SIZE + cfg.max_payload + 1 ≤ p.size) :
    ∃ pm1, fram_ring_init K ring0 pm cfg
        = (ESP_OK, ring_recovered p cfg (ring_slot_seq (ring_empty p cfg) p pmem), pm1) ∧
      PmOK pm1 p pmem := by
  obtain ⟨g, hes⟩ := ring_empty_geom K p cfg hle hK hmagic hcap
  have hc := g.capacity_pos
  have hc0 : ¬ p.size / ((RING_HEADER_SIZE + cfg.max_payload + 1) % U32) = 0 :=
    Nat.pos_iff_ne_zero.mp hc
  obtain ⟨R, hR⟩ : ∃ R : fram_ring_t, R =
      { part := some p, entry_size := (RING_HEADER_SIZE + cfg.max_payload + 1) % U32,
        max_payload := cfg.max_payload,
        capacity := p.size / ((RING_HEADER_SIZE + cfg.max_payload + 1) % U32),
        magic := cfg.magic, head_slot := 0, tail_slot := 0, head_seq := 0, count := 0,
        mutex := SemaphoreHandle_t.free, ready := false } := ⟨_, rfl⟩
  have hRp : R.part = some p := by rw [hR]
  have hRc : R.capacity = p.size / ((RING_HEADER_SIZE + cfg.max_payload + 1) % U32) := by
    rw [hR]
  have hV : ring_slot_seq R p pmem = ring_slot_seq (ring_empty p cfg) p pmem := by
    funext s
    rw [hR]
    exact ring_slot_seq_congr _ _ p pmem s rfl rfl rfl
  obtain ⟨pm1, hs, hok1⟩ := ring_scan_check_eq R p pmem hRp
    (List.range (p.size / ((RING_HEADER_SIZE + cfg.max_payload + 1) % U32)))
    { highest_seq := 0, highest_slot := 0, found := false } pm h
  rw [hV] at hs
  obtain ⟨pm2, hw, hok2⟩ := ring_walk_check_eq R p pmem hRp
    (p.size / ((RING_HEADER_SIZE + cfg.max_payload + 1) % U32)) pm1 0
    (ring_scan_view (ring_slot_seq (ring_empty p cfg) p pmem)
      (List.range (p.size / ((RING_HEADER_SIZE + cfg.max_payload + 1) % U32)))
      { highest_seq := 0, highest_slot := 0, found := false }).highest_seq
    (ring_scan_view (ring_slot_seq (ring_empty p cfg) p pmem)
      (List.range (p.size / ((RING_HEADER_SIZE + cfg.max_payload + 1) % U32)))
      { highest_seq := 0, highest_slot := 0, found := false }).highest_slot hok1
  rw [hV, hRc] at hw
  rw [hR] at hs hw
  obtain ⟨V, hVd⟩ : ∃ V, V = ring_slot_seq (ring_empty p cfg) p pmem := ⟨_, rfl⟩
  rw [← hVd] at hs hw ⊢
  unfold fram_ring_init
  simp only [hfind]
  rw [if_neg (by omega), if_neg hc0]
  simp only [hs]
  by_cases hf : (ring_scan_view V
      (List.range (p.size / ((RING_HEADER_SIZE + cfg.max_payload + 1) % U32)))
      { highest_seq := 0, highest_slot := 0, found := false }).found = true
  · refine ⟨pm2, ?_, hok2⟩
    simp only [hf, hw, Bool.not_true, Bool.false_eq_true, if_false]
    simp only [ring_recovered, ring_empty, hf, Bool.not_true, Bool.false_eq_true, if_false]
  · refine ⟨pm1, ?_, hok1⟩
    simp only [hf, Bool.not_eq_true, Bool.not_false, Bool.not_eq_true', if_true]
    simp only [ring_recovered, ring_empty, hf, Bool.not_false, if_true]

/-- The scan of the first recovery loop over the slots `a, a+1, ..`: it keeps
the highest sequence number seen and the lowest slot that carries it. -/
theorem ring_scan_view_least (V : Nat → Option Nat) :
    ∀ (n a : Nat) (st : ring_scan_t),
      (st.found = true → st.highest_slot < a ∧ V st.highest_slot = some st.highest_seq ∧
        ∀ s, s < a → ∀ q, V s = some q →
          q ≤ st.highest_seq ∧ (s < st.highest_slot → q < st.highest_seq)) →
      (st.found = false → ∀ s, s < a → V s = none) →
      ((ring_scan_view V (List.range' a n) st).found = true →
        (ring_scan_view V (List.range' a n) st).highest_slot < a + n ∧
        V (ring_scan_view V (List.range' a n) st).highest_slot
          = some (ring_scan_view V (List.range' a n) st).highest_seq ∧
        ∀ s, s < a + n → ∀ q, V s = some q →
          q ≤ (ring_scan_view V (List.range' a n) st).highest_seq ∧
          (s < (ring_scan_view V (List.range' a n) st).highest_slot →
            q < (ring_scan_view V (List.range' a n) st).highest_seq)) ∧
      ((ring_scan_view V (List.range' a n) st).found = false → ∀ s, s < a + n → V s = none) := by
  intro n
  induction n with
  | zero =>
    intro a st h1 h2
    exact ⟨h1, h2⟩
  | succ n ih =>
    intro a st h1 h2
    have hl : List.range' a (n + 1) = a :: List.range' (a + 1) n := rfl
    have ha : a + (n + 1) = a + 1 + n := by omega
    rw [hl, ha]
    cases hv : V a with
    | none =>
      have e : ring_scan_view V (a :: List.range' (a + 1) n) st
          = ring_scan_view V (List.range' (a + 1) n) st := by
        simp only [ring_scan_view, hv]
      rw [e]
      refine ih (a + 1) st (fun hf => ?_) (fun hf s hs => ?_)
      · obtain ⟨b1, b2, b3⟩ := h1 hf
        refine ⟨by omega, b2, fun s hs q hq => ?_⟩
        by_cases c : s = a
        · rw [c, hv] at hq
          exact Option.noConfusion hq
        · exact b3 s (by omega) q hq
      · by_cases c : s = a
        · rw [c]; exact hv
        · exact h2 hf s (by omega)
    | some q =>
      by_cases hu : (!st.found || decide (q > st.highest_seq)) = true
      · have e : ring_scan_view V (a :: List.range' (a + 1) n) st
            = ring_scan_view V (List.range' (a + 1) n)
                { highest_seq := q, highest_slot := a, found := true } := by
          simp only [ring_scan_view, hv, hu, if_true]
        rw [e]
        refine ih (a + 1) _ (fun _ => ⟨Nat.lt_succ_self a, hv, fun s hs q1 hq1 => ?_⟩)
          (fun hf => Bool.noConfusion hf)
        by_cases c : s = a
        · rw [c, hv] at hq1
          have := Option.some.inj hq1
          exact ⟨by show q1 ≤ q; omega, fun hlt => absurd hlt (by show ¬ s < a; omega)⟩
        · cases hf : st.found with
          | false =>
            have := h2 hf s (by omega)
            rw [this] at hq1
            exact Option.noConfusion hq1
          | true =>
            rw [hf] at hu
            have hgt : q > st.highest_seq := by simpa using hu
            obtain ⟨_, _, b3⟩ := h1 hf
            have := (b3 s (by omega) q1 hq1).1
            exact ⟨by show q1 ≤ q; omega, fun _ => by show q1 < q; omega⟩
      · have e : ring_scan_view V (a :: List.range' (a + 1) n) st
            = ring_scan_view V (List.range' (a + 1) n) st := by
          simp only [ring_scan_view, hv, hu, Bool.false_eq_true, if_false]
        rw [e]
        have hf : st.found = true := by
          cases hfd : st.found with
          | true => rfl
          | false => rw [hfd] at hu; exact absurd rfl hu
        have hle : q ≤ st.highest_seq := by
          rw [hf] at hu
          have : ¬ q > st.highest_seq := by simpa using hu
          omega
        obtain ⟨b1, b2, b3⟩ := h1 hf
        refine ih (a + 1) st (fun _ => ⟨by omega, b2, fun s hs q1 hq1 => ?_⟩)
          (fun hf2 => by rw [hf] at hf2; exact Bool.noConfusion hf2)
        by_cases c : s = a
        · rw [c, hv] at hq1
          have := Option.some.inj hq1
          exact ⟨by omega, fun hlt => by omega⟩
        · exact b3 s (by omega) q1 hq1

/-- The walk of the second recovery loop from slot `S` with sequence number
`Q`, entered with `run_len = r` at slot `S - r` expecting `Q - r` (in the
arithmetic of the code): the final `run_len` counts the slots that carry the
expected sequence numbers, and the slot after them does not. -/
theorem ring_walk_view_run (V : Nat → Option Nat) (cap Q S : Nat) (hc : 0 < cap)
    (hcU : cap + cap ≤ U32) (hQ : Q < U32) :
    ∀ (fuel r : Nat), r ≤ cap → cap ≤ fuel + r →
      r ≤ ring_walk_view V cap fuel r ((Q + U32 - r) % U32) ((S + cap - r) % cap) ∧
      ring_walk_view V cap fuel r ((Q + U32 - r) % U32) ((S + cap - r) % cap) ≤ cap ∧
      (∀ k, r ≤ k → k < ring_walk_view V cap fuel r ((Q + U32 - r) % U32) ((S + cap - r) % cap) →
        V ((S + cap - k) % cap) = some ((Q + U32 - k) % U32)) ∧
      (ring_walk_view V cap fuel r ((Q + U32 - r) % U32) ((S + cap - r) % cap) < cap →
        V ((S + cap - ring_walk_view V cap fuel r ((Q + U32 - r) % U32) ((S + cap - r) % cap))
            % cap)
          ≠ some ((Q + U32
            - ring_walk_view V cap fuel r ((Q + U32 - r) % U32) ((S + cap - r) % cap)) % U32)) := by
  have hU : U32 = 4294967296 := U32_eq
  intro fuel
  induction fuel with
  | zero =>
    intro r hr hf
    have e : ring_walk_view V cap 0 r ((Q + U32 - r) % U32) ((S + cap - r) % cap) = r := rfl
    rw [e]
    exact ⟨Nat.le_refl _, hr, fun k h1 h2 => by omega, fun h => by omega⟩
  | succ fuel ih =>
    intro r hr hf
    by_cases hlt : r < cap
    · cases hv : V ((S + cap - r) % cap) with
      | none =>
        have e : ring_walk_view V cap (fuel + 1) r ((Q + U32 - r) % U32) ((S + cap - r) % cap)
            = r := by
          simp only [ring_walk_view, hlt, if_true, hv]
        rw [e]
        refine ⟨Nat.le_refl _, hr, fun k h1 h2 => by omega, fun _ => ?_⟩
        rw [hv]
        exact fun hx => Option.noConfusion hx
      | some q =>
        by_cases hq : q = (Q + U32 - r) % U32
        · have h1 : (r + 1) % U32 = r + 1 := Nat.mod_eq_of_lt (by omega)
          by_cases hfull : r + 1 ≥ cap
          · have e : ring_walk_view V cap (fuel + 1) r ((Q + U32 - r) % U32)
                ((S + cap - r) % cap) = r + 1 := by
              simp only [ring_walk_view, hlt, if_true, hv, hq, ne_eq, not_true_eq_false,
                if_false, h1, hfull]
            rw [e]
            refine ⟨by omega, by omega, fun k h2 h3 => ?_, fun h => by omega⟩
            have : k = r := by omega
            rw [this, hv, hq]
          · have hs : ((((S + cap - r) % cap + cap) % U32 + U32 - 1) % U32) % cap
                = (S + cap - (r + 1)) % cap := by
              rw [pred_slot_eq (S + cap - r) cap (by omega) hc hcU]
              congr 1
            have he : ((Q + U32 - r) % U32 + U32 - 1) % U32 = (Q + U32 - (r + 1)) % U32 := by
              rw [hU]
              omega
            have e : ring_walk_view V cap (fuel + 1) r ((Q + U32 - r) % U32)
                ((S + cap - r) % cap)
                = ring_walk_view V cap fuel (r + 1) ((Q + U32 - (r + 1)) % U32)
                    ((S + cap - (r + 1)) % cap) := by
              simp only [ring_walk_view, hlt, if_true, hv, hq, ne_eq, not_true_eq_false,
                if_false, h1, hfull, hs, he]
            rw [e]
            obtain ⟨i1, i2, i3, i4⟩ := ih (r + 1) (by omega) (by omega)
            refine ⟨by omega, i2, fun k h2 h3 => ?_, i4⟩
            by_cases hk : k = r
            · rw [hk, hv, hq]
            · exact i3 k (by omega) h3
        · have e : ring_walk_view V cap (fuel + 1) r ((Q + U32 - r) % U32)
              ((S + cap - r) % cap) = r := by
            simp only [ring_walk_view, hlt, if_true, hv, ne_eq, hq, not_false_eq_true]
          rw [e]
          refine ⟨Nat.le_refl _, hr, fun k h1 h2 => by omega, fun _ => ?_⟩
          rw [hv]
          exact fun hx => hq (Option.some.inj hx)
    · have e : ring_walk_view V cap (fuel + 1) r ((Q + U32 - r) % U32) ((S + cap - r) % cap)
          = r := by
        simp only [ring_walk_view, hlt, if_false]
      rw [e]
      exact ⟨Nat.le_refl _, hr, fun k h1 h2 => by omega, fun h => by omega⟩

theorem le_val_lt_pow : ∀ (b : List Nat), (∀ x ∈ b, x < 256) → le_val b < 256 ^ b.length := by
  intro b
  induction b with
  | nil => intro _; exact Nat.one_pos
  | cons x bs ih =>
    intro hb
    have hx := hb x (List.mem_cons_self _ _)
    have hbs := ih (fun y hy => hb y (List.mem_cons_of_mem _ hy))
    rw [le_val, List.length_cons, pow_succ]
    omega

theorem mem_read_lt (pmem : Nat → Nat) (size a n : Nat) (hb : ∀ i, i < size → pmem i < 256)
    (hfit : a + n ≤ size) : ∀ x ∈ mem_read pmem a n, x < 256 := by
  intro x hx
  unfold mem_read at hx
  obtain ⟨i, hi, rfl⟩ := List.mem_map.mp hx
  exact hb _ (by have := List.mem_range.mp hi; omega)

/-- A slot that passes the check has its header inside the partition. -/
theorem ring_slot_check_header_fits (ring : fram_ring_t) (p : fram_partition_t)
    (pmem : Nat → Nat) (slot : Nat) (hdr : fram_ring_header_t)
    (h : ring_slot_check ring p pmem slot = (ESP_OK, some hdr)) :
    fram_ring_slot_offset ring slot + RING_HEADER_SIZE ≤ p.size := by
  unfold ring_slot_check at h
  simp only at h
  by_cases c1 : ¬ fram_ring_commit_offset ring slot + 1 ≤ p.size ∨
      pmem (fram_ring_commit_offset ring slot) ≠ FRAM_RING_COMMIT
  · rw [if_pos c1] at h
    exact absurd (Prod.mk.inj h).1 (by decide)
  rw [if_neg c1] at h
  by_cases c2 : ¬ fram_ring_slot_offset ring slot + RING_HEADER_SIZE ≤ p.size
  · rw [if_pos c2] at h
    exact absurd (Prod.mk.inj h).1 (by decide)
  exact not_not.mp c2

/-- On a partition of bytes the sequence number of a slot is a 32-bit value. -/
theorem ring_slot_seq_lt (ring : fram_ring_t) (p : fram_partition_t) (pmem : Nat → Nat)
    (slot q : Nat) (hb : ∀ i, i < p.size → pmem i < 256)
    (h : ring_slot_seq ring p pmem slot = some q) : q < U32 := by
  rcases ring_slot_check_cases ring p pmem slot with ⟨hdr, hc⟩ | ⟨err, he, hc⟩
  · have hfit := ring_slot_check_header_fits ring p pmem slot hdr hc
    obtain ⟨hh, _⟩ := ring_slot_check_ok ring p pmem slot hdr hc
    unfold ring_slot_seq at h
    rw [hc] at h
    have hq : hdr.seq = q := Option.some.inj h
    rw [← hq, hh]
    show le_val (slice _ 4 4) < U32
    have hlt := le_val_lt_pow (slice (mem_read pmem (fram_ring_slot_offset ring slot)
      RING_HEADER_SIZE) 4 4) (fun x hx => by
        unfold slice at hx
        exact mem_read_lt pmem p.size _ _ hb hfit x
          (List.mem_of_mem_drop (List.mem_of_mem_take hx)))
    have hlen : (slice (mem_read pmem (fram_ring_slot_offset ring slot) RING_HEADER_SIZE)
        4 4).length ≤ 4 := by
      unfold slice
      rw [List.length_take]
      exact Nat.min_le_left _ _
    have := Nat.pow_le_pow_right (show 0 < 256 by decide) hlen
    rw [U32_eq]
    omega
  · unfold ring_slot_seq at h
    rw [hc] at h
    cases err <;> first | exact absurd rfl he | exact Option.noConfusion h

/-- The geometry of the recovered ring is that of the empty ring. -/
theorem ring_recovered_geom (p : fram_partition_t) (cfg : fram_ring_config_t)
    (V : Nat → Option Nat) :
    (ring_recovered p cfg V).part = some p ∧
    (ring_recovered p cfg V).entry_size = (ring_empty p cfg).entry_size ∧
    (ring_recovered p cfg V).max_payload = (ring_empty p cfg).max_payload ∧
    (ring_recovered p cfg V).magic = (ring_empty p cfg).magic ∧
    (ring_recovered p cfg V).capacity = (ring_empty p cfg).capacity := by
  unfold ring_recovered
  simp only
  split_ifs <;> exact ⟨rfl, rfl, rfl, rfl, rfl⟩

/-- The log fields of the recovered ring. -/
theorem ring_recovered_fields (p : fram_partition_t) (cfg : fram_ring_config_t)
    (V : Nat → Option Nat) (sc : ring_scan_t)
    (hsc : sc = ring_scan_view V (List.range (ring_empty p cfg).capacity)
      { highest_seq := 0, highest_slot := 0, found := false }) :
    (sc.found = false →
      (ring_recovered p cfg V).head_slot = 0 ∧ (ring_recovered p cfg V).tail_slot = 0 ∧
      (ring_recovered p cfg V).head_seq = 0 ∧ (ring_recovered p cfg V).count = 0) ∧
    (sc.found = true →
      (ring_recovered p cfg V).count
        = ring_walk_view V (ring_empty p cfg).capacity (ring_empty p cfg).capacity 0
            sc.highest_seq sc.highest_slot ∧
      (ring_recovered p cfg V).head_slot
        = ((sc.highest_slot + 1) % U32) % (ring_empty p cfg).capacity ∧
      (ring_recovered p cfg V).head_seq = (sc.highest_seq + 1) % U32 ∧
      (ring_recovered p cfg V).tail_slot
        = (((((sc.highest_slot + 1) % U32) % (ring_empty p cfg).capacity
            + (ring_empty p cfg).capacity) % U32 + U32
            - ring_walk_view V (ring_empty p cfg).capacity (ring_empty p cfg).capacity 0
                sc.highest_seq sc.highest_slot) % U32) % (ring_empty p cfg).capacity) := by
  constructor
  · intro hf
    rw [hsc] at hf
    unfold ring_recovered
    simp only [hf, Bool.not_false, if_true]
    exact ⟨rfl, rfl, rfl, rfl⟩
  · intro hf
    rw [hsc] at hf ⊢
    unfold ring_recovered
    simp only [hf, Bool.not_true, Bool.false_eq_true, if_false]
    exact ⟨trivial, trivial, trivial, trivial⟩

/-- The state `fram_ring_init` recovers from any content of a working
partition, in terms of the sequence numbers `ring_slot_seq` reads off the
slots. -/
theorem ring_init_recovery (K : Kconfig) (ring0 ring1 : fram_ring_t) (pm pm1 : fram_pm_t)
    (p : fram_partition_t) (pmem : Nat → Nat) (cfg : fram_ring_config_t)
    (hK : K.FRAM_RING_MAX_PAYLOAD + RING_HEADER_SIZE + 1 < U32) (hmagic : cfg.magic < U32)
    (h : PmOK pm p pmem) (hfind : fram_pm_find pm cfg.partition_name = some p)
    (hinit : fram_ring_init K ring0 pm cfg = (ESP_OK, ring1, pm1)) :
    (∀ (pm2 : fram_pm_t) (slot : Nat), PmOK pm2 p pmem →
      ∃ pm3, fram_ring_validate_slot ring1 pm2 slot
        = ((ring_slot_check ring1 p pmem slot).1, (ring_slot_check ring1 p pmem slot).2, pm3)) ∧
    ((∀ s, s < ring1.capacity → ring_slot_seq ring1 p pmem s = none) →
      ring1.head_slot = 0 ∧ ring1.tail_slot = 0 ∧ ring1.head_seq = 0 ∧ ring1.count = 0) ∧
    ((∀ i, i < p.size → pmem i < 256) →
      ∀ s q, ring_slot_seq ring1 p pmem s = some q → q < U32) ∧
    (∀ Q S, Q < U32 → S < ring1.capacity → ring_slot_seq ring1 p pmem S = some Q →
      (∀ s q, s < ring1.capacity → ring_slot_seq ring1 p pmem s = some q → q ≤ Q) →
      (∀ s, s < S → ring_slot_seq ring1 p pmem s ≠ some Q) →
      ring1.head_slot = (S + 1) % ring1.capacity ∧
      ring1.head_seq = (Q + 1) % U32 ∧
      ring1.tail_slot = (ring1.head_slot + ring1.capacity - ring1.count) % ring1.capacity ∧
      ring1.count ≤ ring1.capacity ∧
      (∀ k, k < ring1.count → k ≤ Q ∧
        ring_slot_seq ring1 p pmem ((S + ring1.capacity - k) % ring1.capacity)
          = some (Q - k)) ∧
      (ring1.count < ring1.capacity →
        ¬ (ring1.count ≤ Q ∧
          ring_slot_seq ring1 p pmem ((S + ring1.capacity - ring1.count) % ring1.capacity)
            = some (Q - ring1.count)))) := by
  obtain ⟨hmp, hle, hcap⟩ := ring_init_ok_cfg K ring0 ring1 pm pm1 p cfg hfind hK hinit
  obtain ⟨pmx, hi, _⟩ := ring_init_check K ring0 pm p pmem cfg hfind h hmp hle hK hmagic hcap
  rw [hinit] at hi
  have hr1 : ring1 = ring_recovered p cfg (ring_slot_seq (ring_empty p cfg) p pmem) :=
    (Prod.mk.inj (Prod.mk.inj hi).2).1
  obtain ⟨g, _⟩ := ring_empty_geom K p cfg hle hK hmagic hcap
  obtain ⟨gp, ge, gm, gg, gc⟩ := ring_recovered_geom p cfg
    (ring_slot_seq (ring_empty p cfg) p pmem)
  rw [← hr1] at gp ge gm gg gc
  have hVeq : ring_slot_seq ring1 p pmem = ring_slot_seq (ring_empty p cfg) p pmem := by
    funext s
    exact ring_slot_seq_congr _ _ p pmem s ge gm gg
  obtain ⟨V, hV⟩ : ∃ V, V = ring_slot_seq (ring_empty p cfg) p pmem := ⟨_, rfl⟩
  obtain ⟨cap, hcapd⟩ : ∃ cap, cap = (ring_empty p cfg).capacity := ⟨_, rfl⟩
  obtain ⟨sc, hsc⟩ : ∃ sc, sc = ring_scan_view V (List.range cap)
      { highest_seq := 0, highest_slot := 0, found := false } := ⟨_, rfl⟩
  have hcpos : 0 < cap := by rw [hcapd]; exact g.capacity_pos
  have hcU : cap + cap ≤ U32 := by
    rw [hcapd]
    exact ring_capacity_small _ p pm pmem g h
  have hU : U32 = 4294967296 := U32_eq
  obtain ⟨f0, f1⟩ := ring_recovered_fields p cfg V sc (by rw [hsc, hcapd])
  rw [← hV] at hr1
  rw [← hr1] at f0 f1
  rw [← hcapd] at f1
  rw [hVeq, ← hV, gc, ← hcapd]
  have hscan := ring_scan_view_least V cap 0 { highest_seq := 0, highest_slot := 0, found := false }
    (fun hx => Bool.noConfusion hx) (fun _ s hs => absurd hs (Nat.not_lt_zero _))
  rw [← List.range_eq_range', ← hsc, Nat.zero_add] at hscan
  obtain ⟨s1, s2⟩ := hscan
  refine ⟨fun pm2 slot h2 => ?_, fun hnone => ?_,
    fun hbytes s q hq => ring_slot_seq_lt _ p pmem s q hbytes (by rw [← hV]; exact hq),
    fun Q S hQ hS hVS hmax hleast => ?_⟩
  · obtain ⟨pm3, _, hv⟩ := ring_validate_check ring1 p pm2 pmem slot gp h2
    exact ⟨pm3, hv⟩
  · apply f0
    cases hf : sc.found with
    | false => rfl
    | true =>
      obtain ⟨a1, a2, _⟩ := s1 hf
      rw [hnone _ a1] at a2
      exact Option.noConfusion a2
  · have hf : sc.found = true := by
      cases hfd : sc.found with
      | true => rfl
      | false =>
        rw [s2 hfd S hS] at hVS
        exact Option.noConfusion hVS
    obtain ⟨a1, a2, a3⟩ := s1 hf
    have hQ1 := (a3 S hS Q hVS).1
    have hQ2 := hmax _ _ a1 a2
    have hseq : sc.highest_seq = Q := by omega
    have hslot : sc.highest_slot = S := by
      by_contra hne
      rcases Nat.lt_or_gt_of_ne hne with hlt | hgt
      · rw [hseq] at a2
        exact hleast _ hlt a2
      · have := (a3 S hS Q hVS).2 hgt
        omega
    obtain ⟨c1, c2, c3, c4⟩ := f1 hf
    rw [hseq, hslot] at c1 c4
    rw [hslot] at c2
    rw [hseq] at c3
    obtain ⟨w1, w2, w3, w4⟩ := ring_walk_view_run V cap Q S hcpos hcU hQ cap 0 (Nat.zero_le _)
      (Nat.le_refl _)
    have e1 : (Q + U32 - 0) % U32 = Q := by
      rw [Nat.sub_zero, Nat.add_mod_right, Nat.mod_eq_of_lt hQ]
    have e2 : (S + cap - 0) % cap = S := by
      rw [Nat.sub_zero, Nat.add_mod_right, Nat.mod_eq_of_lt hS]
    rw [e1, e2, ← c1] at w2 w3 w4
    have hhead : ring1.head_slot = (S + 1) % cap := by
      rw [c2, Nat.mod_eq_of_lt (show S + 1 < U32 by omega)]
    have hrun : ∀ k, k < ring1.count → k ≤ Q ∧ V ((S + cap - k) % cap) = some (Q - k) := by
      intro k hk
      have hv := w3 k (Nat.zero_le _) hk
      have hle : k ≤ Q := by
        by_contra hgt
        have hq := hmax _ _ (Nat.mod_lt _ hcpos) hv
        have : (Q + U32 - k) % U32 = Q + U32 - k := Nat.mod_eq_of_lt (by omega)
        omega
      have e : (Q + U32 - k) % U32 = Q - k := by
        rw [hU] at hQ ⊢
        omega
      rw [e] at hv
      exact ⟨hle, hv⟩
    refine ⟨hhead, c3, ?_, w2, hrun, fun hlt hcon => ?_⟩
    · have hh : ring1.head_slot < cap := by rw [hhead]; exact Nat.mod_lt _ hcpos
      rw [← c1, ← c2] at c4
      have e : ((ring1.head_slot + cap) % U32 + U32 - ring1.count) % U32
          = ring1.head_slot + cap - ring1.count := by
        rw [hU] at hcU ⊢
        omega
      rw [e] at c4
      exact c4
    · have e : (Q + U32 - ring1.count) % U32 = Q - ring1.count := by
        have := hcon.1
        rw [hU] at hQ ⊢
        omega
      rw [e] at w4
      exact w4 hlt hcon.2

/-- The sequence number read off a slot that holds a committed record written
by `fram_ring_append`. -/
theorem ring_slot_seq_rec (ring : fram_ring_t) (p : fram_partition_t) (pm : fram_pm_t)
    (pmem : Nat → Nat) (slot seq now : Nat) (payload : List Nat)
    (g : RingGeom ring p) (h : PmOK pm p pmem) (hs : slot < ring.capacity)
    (hseq : seq < U32) (hl : payload.length ≤ ring.max_payload)
    (hl16 : payload.length ≤ UINT16_MAX)
    (hrec : SlotRec pmem ring slot (ring_header_for ring.magic seq now payload) payload) :
    ring_slot_seq ring p pmem slot = some seq := by
  obtain ⟨pm1, hv, _⟩ := ring_validate_rec ring p pm pmem slot seq now payload g h hs hseq hl
    hl16 hrec
  obtain ⟨pm2, _, hcase⟩ := ring_validate_seq ring p pm pmem slot g.part h
  rcases hcase with ⟨hdr, hq, hval⟩ | ⟨err, he, _, hval⟩
  · rw [hv] at hval
    have e : ring_header_for ring.magic seq now payload = hdr :=
      Option.some.inj (Prod.mk.inj (Prod.mk.inj hval).2).1
    rw [hq, ← e]
    rfl
  · rw [hv] at hval
    exact absurd (Prod.mk.inj hval).1.symm he

/-- A slot whose commit byte is not set carries no sequence number. -/
theorem ring_slot_seq_fresh (ring : fram_ring_t) (p : fram_partition_t) (pm : fram_pm_t)
    (pmem : Nat → Nat) (slot : Nat) (g : RingGeom ring p) (h : PmOK pm p pmem)
    (hs : slot < ring.capacity)
    (hc : pmem (slot * ring.entry_size + RING_HEADER_SIZE + ring.max_payload)
      ≠ FRAM_RING_COMMIT) :
    ring_slot_seq ring p pmem slot = none := by
  obtain ⟨pm1, hv, _⟩ := ring_validate_uncommitted ring p pm pmem slot g h hs hc
  obtain ⟨pm2, _, hcase⟩ := ring_validate_seq ring p pm pmem slot g.part h
  rcases hcase with ⟨hdr, _, hval⟩ | ⟨err, _, hq, _⟩
  · rw [hv] at hval
    exact absurd (Prod.mk.inj hval).1 (by decide)
  · exact hq

/-- The sequence numbers of the slots of a ring built by the appends `es`. -/
theorem ring_after_seq (ring : fram_ring_t) (p : fram_partition_t) (pm : fram_pm_t)
    (pmem : Nat → Nat) (es : List (List Nat × Nat)) (g : RingGeom ring p) (h : PmOK pm p pmem)
    (inv : RingAfter ring pmem es) :
    (∀ i, i < es.length → es.length ≤ i + ring.capacity →
      ring_slot_seq ring p pmem (i % ring.capacity) = some (i % U32)) ∧
    (∀ j, es.length ≤ j → j < ring.capacity → ring_slot_seq ring p pmem j = none) := by
  constructor
  · intro i hi hw
    have hb := inv.bounded i hi
    exact ring_slot_seq_rec ring p pm pmem _ _ _ _ g h (Nat.mod_lt _ g.capacity_pos)
      (Nat.mod_lt _ (by decide)) hb.1 hb.2 (inv.window i hi hw)
  · intro j hj hc
    exact ring_slot_seq_fresh ring p pm pmem j g h hc (inv.fresh j hj hc)

/-- A second `fram_ring_init` on the partition a run of appends left: it
succeeds, and the ring it builds has the geometry of the first one. -/
theorem ring_reinit_ok (K : Kconfig) (ring0 ring1 ring2 ringX : fram_ring_t)
    (pm pm1 pm2 : fram_pm_t) (p : fram_partition_t) (pmem : Nat → Nat)
    (cfg : fram_ring_config_t) (entries : List (List Nat × Nat))
    (hK : K.FRAM_RING_MAX_PAYLOAD + RING_HEADER_SIZE + 1 < U32) (hmagic : cfg.magic < U32)
    (h : PmOK pm p pmem) (hfind : fram_pm_find pm cfg.partition_name = some p)
    (herased : ∀ i, i < p.size → pmem i = 0xFF)
    (hinit : fram_ring_init K ring0 pm cfg = (ESP_OK, ring1, pm1))
    (happ : fram_ring_append_all ring1 pm1 entries = (ESP_OK, ring2, pm2)) :
    ∃ pmem2 ring3 pm3, RingGeom ring2 p ∧ PmOK pm2 p pmem2 ∧ RingAfter ring2 pmem2 entries ∧
      fram_pm_find pm2 cfg.partition_name = some p ∧
      fram_ring_init K ringX pm2 cfg = (ESP_OK, ring3, pm3) ∧
      ring3.part = some p ∧ ring3.capacity = ring2.capacity ∧
      ring2.capacity = (ring_empty p cfg).capacity ∧
      ring_slot_seq ring3 p pmem2 = ring_slot_seq ring2 p pmem2 := by
  obtain ⟨pmem2, g2, h2, inv2, hr1, e1, e2, e3, e4, hsame⟩ := ring_run_spec K ring0 ring1 ring2
    pm pm1 pm2 p pmem cfg entries hK hmagic h hfind herased hinit happ
  obtain ⟨hmp, hle, hcap⟩ := ring_init_ok_cfg K ring0 ring1 pm pm1 p cfg hfind hK hinit
  have hfind2 : fram_pm_find pm2 cfg.partition_name = some p := by
    rw [fram_pm_find_same pm pm2 _ hsame]
    exact hfind
  obtain ⟨pm3, hi, _⟩ := ring_init_check K ringX pm2 p pmem2 cfg hfind2 h2 hmp hle hK hmagic hcap
  obtain ⟨gp, ge, gm, gg, gc⟩ := ring_recovered_geom p cfg
    (ring_slot_seq (ring_empty p cfg) p pmem2)
  rw [hr1] at e1 e2 e3 e4
  refine ⟨pmem2, _, pm3, g2, h2, inv2, hfind2, hi, gp, by rw [gc, e1], e1, ?_⟩
  funext s
  exact ring_slot_seq_congr _ _ p pmem2 s (by rw [ge, e4]) (by rw [gm, e2]) (by rw [gg, e3])

/-- C30. Ring recovery computes the specified state. For every content of a
working partition on which `fram_ring_init` returns `ESP_OK`, with "slot `s`
validates with seq `q`" read off the partition bytes by `ring_slot_seq` (what
`fram_ring_validate_slot` returns there; a 32-bit value on a partition of
bytes): if no slot validates, `head_slot = tail_slot = head_seq = count = 0`;
otherwise, with `Q` the maximum seq among the valid slots and `S` the
lowest-index valid slot carrying `Q`, `count ≤ capacity` is the number of slots
`S, S-1, S-2, ...` (mod capacity) that validate with the seqs
`Q, Q-1, Q-2, ...` before the first slot that fails validation or carries
another seq, `head_slot = (S + 1) mod capacity`,
`head_seq = (Q + 1) mod 2^32` and
`tail_slot = (head_slot + capacity - count) mod capacity`. -/
theorem ring_recovery_state (K : Kconfig) (ring0 ring1 : fram_ring_t) (pm pm1 : fram_pm_t)
    (p : fram_partition_t) (pmem : Nat → Nat) (cfg : fram_ring_config_t)
    (hK : K.FRAM_RING_MAX_PAYLOAD + RING_HEADER_SIZE + 1 < U32) (hmagic : cfg.magic < U32)
    (h : PmOK pm p pmem) (hfind : fram_pm_find pm cfg.partition_name = some p)
    (hinit : fram_ring_init K ring0 pm cfg = (ESP_OK, ring1, pm1)) :
    (∀ (pm2 : fram_pm_t) (slot : Nat), PmOK pm2 p pmem →
      ∃ pm3, fram_ring_validate_slot ring1 pm2 slot
        = ((ring_slot_check ring1 p pmem slot).1, (ring_slot_check ring1 p pmem slot).2, pm3)) ∧
    ((∀ s, s < ring1.capacity → ring_slot_seq ring1 p pmem s = none) →
      ring1.head_slot = 0 ∧ ring1.tail_slot = 0 ∧ ring1.head_seq = 0 ∧ ring1.count = 0) ∧
    ((∀ i, i < p.size → pmem i < 256) →
      ∀ s q, ring_slot_seq ring1 p pmem s = some q → q < U32) ∧
    (∀ Q S, Q < U32 → S < ring1.capacity → ring_slot_seq ring1 p pmem S = some Q →
      (∀ s q, s < ring1.capacity → ring_slot_seq ring1 p pmem s = some q → q ≤ Q) →
      (∀ s, s < S → ring_slot_seq ring1 p pmem s ≠ some Q) →
      ring1.head_slot = (S + 1) % ring1.capacity ∧
      ring1.head_seq = (Q + 1) % U32 ∧
      ring1.tail_slot = (ring1.head_slot + ring1.capacity - ring1.count) % ring1.capacity ∧
      ring1.count ≤ ring1.capacity ∧
      (∀ k, k < ring1.count → k ≤ Q ∧
        ring_slot_seq ring1 p pmem ((S + ring1.capacity - k) % ring1.capacity)
          = some (Q - k)) ∧
      (ring1.count < ring1.capacity →
        ¬ (ring1.count ≤ Q ∧
          ring_slot_seq ring1 p pmem ((S + ring1.capacity - ring1.count) % ring1.capacity)
            = some (Q - ring1.count)))) :=
  ring_init_recovery K ring0 ring1 pm pm1 p pmem cfg hK hmagic h hfind hinit

/-- Witness for C30: `fram_ring_init` on the partition the three appends of
the ring test left. The slots 0, 1, 2 validate with the seqs 0, 1, 2 and no
other slot validates, so `Q = 2` and `S = 2`; the recovered ring has
`head_slot = 3`, `head_seq = 3`, `count = 3` and `tail_slot = 0`. -/
theorem ring_recovery_state_witness :
    (example_ring_recover example_ring_entries).1 = ESP_OK ∧
    (example_ring_recover example_ring_entries).2.1.head_slot = 3 ∧
    (example_ring_recover example_ring_entries).2.1.head_seq = 3 ∧
    (example_ring_recover example_ring_entries).2.1.count = 3 ∧
    (example_ring_recover example_ring_entries).2.1.tail_slot = 0 := by
  have hrun := example_ring_run_ok example_ring_entries (by decide)
  obtain ⟨pmem2, ring3, pm3, g2, h2, inv2, hfind2, hi, _, hc3, hc2, hVeq⟩ := ring_reinit_ok
    example_K example_ring0 _ _ example_ring0 example_pm _ _ example_ring_part (fun _ => 0xFF)
    example_ring_cfg example_ring_entries (by decide) (by decide) example_pm_ring_ok
    example_ring_find (fun _ _ => rfl) example_ring_init_ok hrun
  have hre : example_ring_recover example_ring_entries = (ESP_OK, ring3, pm3) := by
    unfold example_ring_recover
    exact hi
  have h99 : (example_ring_run example_ring_entries).2.1.capacity = 99 := by
    rw [hc2]
    exact example_ring_empty_capacity
  have hcap : ring3.capacity = 99 := by rw [hc3, h99]
  obtain ⟨a1, a2⟩ := ring_after_seq _ example_ring_part _ pmem2 example_ring_entries g2 h2 inv2
  rw [← hVeq, h99] at a1 a2
  have hV0 : ring_slot_seq ring3 example_ring_part pmem2 0 = some 0 := by
    have := a1 0 (by decide) (by decide)
    rw [Nat.zero_mod, Nat.zero_mod] at this
    exact this
  have hV1 : ring_slot_seq ring3 example_ring_part pmem2 1 = some 1 := by
    have := a1 1 (by decide) (by decide)
    rw [show 1 % 99 = 1 by decide, show 1 % U32 = 1 by decide] at this
    exact this
  have hV2 : ring_slot_seq ring3 example_ring_part pmem2 2 = some 2 := by
    have := a1 2 (by decide) (by decide)
    rw [show 2 % 99 = 2 by decide, show 2 % U32 = 2 by decide] at this
    exact this
  have hVn : ∀ j, 3 ≤ j → j < 99 → ring_slot_seq ring3 example_ring_part pmem2 j = none :=
    fun j h3 hj => a2 j h3 hj
  obtain ⟨t1, t2, t3, t4, t5, t6⟩ := (ring_recovery_state example_K example_ring0 ring3
    (example_ring_run example_ring_entries).2.2 pm3 example_ring_part pmem2 example_ring_cfg
    (by decide) (by decide) h2 hfind2 hi).2.2.2 2 2 (by decide) (by rw [hcap]; decide) hV2
    (fun s q hs hq => by
      rw [hcap] at hs
      by_cases c0 : s = 0
      · rw [c0, hV0] at hq
        have := Option.some.inj hq
        omega
      by_cases c1 : s = 1
      · rw [c1, hV1] at hq
        have := Option.some.inj hq
        omega
      by_cases c2 : s = 2
      · rw [c2, hV2] at hq
        have := Option.some.inj hq
        omega
      rw [hVn s (by omega) hs] at hq
      exact Option.noConfusion hq)
    (fun s hs hq => by
      by_cases c0 : s = 0
      · rw [c0, hV0] at hq
        exact absurd (Option.some.inj hq) (by decide)
      · have c1 : s = 1 := by omega
        rw [c1, hV1] at hq
        exact absurd (Option.some.inj hq) (by decide))
  rw [hcap] at t1 t3 t4 t5 t6
  obtain ⟨c, hcd⟩ : ∃ c, c = ring3.count := ⟨_, rfl⟩
  rw [← hcd] at t3 t4 t5 t6
  have hle : c ≤ 3 := by
    by_contra hgt
    have := (t5 3 (by omega)).1
    omega
  have hge : 3 ≤ c := by
    by_contra hlt
    apply t6 (by omega)
    have hc012 : c = 0 ∨ c = 1 ∨ c = 2 := by omega
    rcases hc012 with e | e | e <;> rw [e]
    · exact ⟨by decide, hV2⟩
    · exact ⟨by decide, hV1⟩
    · exact ⟨by decide, hV0⟩
  have hc3 : c = 3 := by omega
  rw [hc3, t1] at t3
  rw [hre]
  exact ⟨rfl, t1, t2, by rw [← hcd]; exact hc3, t3⟩

/-- Counterexample for C30: on the example ring (capacity 99), after
`fram_ring_init` and `2^32 + 2` successful appends, a second `fram_ring_init`
on the partition returns `ESP_OK`. Slot 3 validates with the seq `2^32 - 1`
and every slot that validates carries a seq of at most `2^32 - 1`, so the
maximum seq among the valid slots is `Q = 2^32 - 1`; the recovered `head_seq`
is 0, not `Q + 1 = 2^32`. -/
theorem ring_recovery_state_counterexample :
    example_ring_wrap.length = 4294967298 ∧
    (example_ring_run example_ring_wrap).1 = ESP_OK ∧
    ∃ ring3 pm3, example_ring_recover example_ring_wrap = (ESP_OK, ring3, pm3) ∧
      ring3.capacity = 99 ∧
      (∃ hdr pmv, fram_ring_validate_slot ring3 (example_ring_run example_ring_wrap).2.2 3
          = (ESP_OK, some hdr, pmv) ∧ hdr.seq = 4294967295) ∧
      (∀ s hdr pmv, s < 99 →
        fram_ring_validate_slot ring3 (example_ring_run example_ring_wrap).2.2 s
          = (ESP_OK, some hdr, pmv) → hdr.seq ≤ 4294967295) ∧
      ring3.head_seq = 0 := by
  have hrun := example_ring_run_ok example_ring_wrap example_ring_wrap_bounded
  obtain ⟨pmem2, ring3, pm3, g2, h2, inv2, hfind2, hi, hp3, hc3, hc2, hVeq⟩ := ring_reinit_ok
    example_K example_ring0 _ _ example_ring0 example_pm _ _ example_ring_part (fun _ => 0xFF)
    example_ring_cfg example_ring_wrap (by decide) (by decide) example_pm_ring_ok
    example_ring_find (fun _ _ => rfl) example_ring_init_ok hrun
  have hre : example_ring_recover example_ring_wrap = (ESP_OK, ring3, pm3) := by
    unfold example_ring_recover
    exact hi
  have h99 : (example_ring_run example_ring_wrap).2.1.capacity = 99 := by
    rw [hc2]
    exact example_ring_empty_capacity
  have hcap : ring3.capacity = 99 := by rw [hc3, h99]
  have hU : U32 = 4294967296 := U32_eq
  obtain ⟨a1, _⟩ := ring_after_seq _ example_ring_part _ pmem2 example_ring_wrap g2 h2 inv2
  rw [← hVeq, h99, example_ring_wrap_length] at a1
  have hVs : ∀ s, s < 99 → ∃ i, 4294967199 ≤ i ∧ i < 4294967298 ∧ i % 99 = s ∧
      ring_slot_seq ring3 example_ring_part pmem2 s = some (i % U32) := by
    intro s hs
    refine ⟨4294967199 + (s + 99 - 6) % 99, by omega, by omega, by omega, ?_⟩
    have := a1 (4294967199 + (s + 99 - 6) % 99) (by omega) (by omega)
    rw [show (4294967199 + (s + 99 - 6) % 99) % 99 = s by omega] at this
    exact this
  have hV3 : ring_slot_seq ring3 example_ring_part pmem2 3 = some 4294967295 := by
    obtain ⟨i, i1, i2, i3, i4⟩ := hVs 3 (by decide)
    have e : i % U32 = 4294967295 := by
      rw [hU]
      omega
    rw [i4, e]
  have hlt : ∀ s q, s < 99 → ring_slot_seq ring3 example_ring_part pmem2 s = some q →
      q ≤ 4294967295 := by
    intro s q hs hq
    obtain ⟨i, _, _, _, i4⟩ := hVs s hs
    rw [i4] at hq
    have := Option.some.inj hq
    rw [hU] at this
    omega
  obtain ⟨_, t2, _⟩ := (ring_init_recovery example_K example_ring0 ring3
    (example_ring_run example_ring_wrap).2.2 pm3 example_ring_part pmem2 example_ring_cfg
    (by decide) (by decide) h2 hfind2 hi).2.2.2 4294967295 3 (by decide)
    (by rw [hcap]; decide) hV3 (fun s q hs hq => hlt s q (by rw [← hcap]; exact hs) hq)
    (fun s hs hq => by
      obtain ⟨i, i1, i2, i3, i4⟩ := hVs s (by omega)
      rw [i4] at hq
      have := Option.some.inj hq
      rw [hU] at this
      omega)
  refine ⟨example_ring_wrap_length, ?_, ring3, pm3, hre, hcap, ?_, ?_, ?_⟩
  · show (fram_ring_append_all _ _ example_ring_wrap).1 = ESP_OK
    rw [hrun]
  · obtain ⟨pm4, _, hcase⟩ := ring_validate_seq ring3 example_ring_part
      (example_ring_run example_ring_wrap).2.2 pmem2 3 hp3 h2
    rcases hcase with ⟨hdr, hq, hval⟩ | ⟨err, _, hq, _⟩
    · rw [hV3] at hq
      exact ⟨hdr, pm4, hval, (Option.some.inj hq).symm⟩
    · rw [hV3] at hq
      exact Option.noConfusion hq
  · intro s hdr pmv hs hv
    obtain ⟨pm4, _, hcase⟩ := ring_validate_seq ring3 example_ring_part
      (example_ring_run example_ring_wrap).2.2 pmem2 s hp3 h2
    rcases hcase with ⟨hdr1, hq, hval⟩ | ⟨err, he, _, hval⟩
    · rw [hv] at hval
      have e : hdr = hdr1 := Option.some.inj (Prod.mk.inj (Prod.mk.inj hval).2).1
      rw [e]
      exact hlt s _ hs hq
    · rw [hv] at hval
      exact absurd (Prod.mk.inj hval).1.symm he
  · rw [t2]
    decide

/-! ## The healthy flag and the transfers -/

theorem dev_set_healthy_error (d : fram_dev_t) :
    dev_set_healthy (fram_dev_record_error d)
      = dev_set_healthy (fram_dev_record_error (dev_set_healthy d)) := by
  unfold fram_dev_record_error dev_set_healthy
  simp only
  split_ifs <;> rfl

theorem dev_set_healthy_idem (d : fram_dev_t) :
    dev_set_healthy (dev_set_healthy d) = dev_set_healthy d := rfl

/-- The chunk loop of `fram_dev_read` does not look at the `healthy` flag. -/
theorem fram_dev_read_loop_healthy (mt : Nat) :
    ∀ (fuel : Nat) (d : fram_dev_t) (addr remaining : Nat) (out : List Nat),
      (fram_dev_read_loop fuel d addr remaining mt out).1
        = (fram_dev_read_loop fuel (dev_set_healthy d) addr remaining mt out).1 ∧
      (fram_dev_read_loop fuel d addr remaining mt out).2.1
        = (fram_dev_read_loop fuel (dev_set_healthy d) addr remaining mt out).2.1 ∧
      dev_set_healthy (fram_dev_read_loop fuel d addr remaining mt out).2.2
        = dev_set_healthy
            (fram_dev_read_loop fuel (dev_set_healthy d) addr remaining mt out).2.2 ∧
      fram_dev_read_loop_calls fuel d addr remaining mt
        = fram_dev_read_loop_calls fuel (dev_set_healthy d) addr remaining mt := by
  intro fuel
  induction fuel with
  | zero =>
    intro d addr remaining out
    unfold fram_dev_read_loop fram_dev_read_loop_calls
    split_ifs <;> exact ⟨rfl, rfl, rfl, rfl⟩
  | succ fuel ih =>
    intro d addr remaining out
    have hh : (dev_set_healthy d).hal = d.hal := rfl
    have hc : (dev_set_healthy d).read_count = d.read_count := rfl
    unfold fram_dev_read_loop fram_dev_read_loop_calls
    simp only [hh, hc]
    generalize (if remaining > mt then mt else remaining) = chunk
    by_cases h0 : remaining = 0
    · simp only [if_pos h0]
      exact ⟨trivial, trivial, rfl, trivial⟩
    · simp only [if_neg h0]
      by_cases h1 : (fram_hal_mock_read d.hal addr chunk).1 ≠ ESP_OK
      · simp only [if_pos h1]
        exact ⟨trivial, trivial, dev_set_healthy_error _, trivial⟩
      · simp only [if_neg h1]
        obtain ⟨i1, i2, i3, i4⟩ := ih (fram_dev_record_success
          { d with hal := (fram_hal_mock_read d.hal addr chunk).2.2,
                   read_count := (d.read_count + 1) % U32 })
          ((addr + chunk) % U32) (remaining - chunk)
          (out ++ (fram_hal_mock_read d.hal addr chunk).2.1)
        exact ⟨i1, i2, i3, by rw [i4]; rfl⟩

/-- The chunk loop of `fram_dev_write` does not look at the `healthy` flag. -/
theorem fram_dev_write_loop_healthy (mt : Nat) :
    ∀ (fuel : Nat) (d : fram_dev_t) (addr : Nat) (data : List Nat),
      (fram_dev_write_loop fuel d addr data mt).1
        = (fram_dev_write_loop fuel (dev_set_healthy d) addr data mt).1 ∧
      dev_set_healthy (fram_dev_write_loop fuel d addr data mt).2
        = dev_set_healthy (fram_dev_write_loop fuel (dev_set_healthy d) addr data mt).2 ∧
      fram_dev_write_loop_calls fuel d addr data mt
        = fram_dev_write_loop_calls fuel (dev_set_healthy d) addr data mt := by
  intro fuel
  induction fuel with
  | zero =>
    intro d addr data
    unfold fram_dev_write_loop fram_dev_write_loop_calls
    split_ifs <;> exact ⟨rfl, rfl, rfl⟩
  | succ fuel ih =>
    intro d addr data
    have hh : (dev_set_healthy d).hal = d.hal := rfl
    have hc : (dev_set_healthy d).write_count = d.write_count := rfl
    unfold fram_dev_write_loop fram_dev_write_loop_calls
    simp only [hh, hc]
    generalize (if data.length > mt then mt else data.length) = chunk
    by_cases h0 : data.length = 0
    · simp only [if_pos h0]
      exact ⟨trivial, rfl, trivial⟩
    · simp only [if_neg h0]
      by_cases h1 : (fram_hal_mock_write d.hal addr (data.take chunk)).1 ≠ ESP_OK
      · simp only [if_pos h1]
        exact ⟨trivial, dev_set_healthy_error _, trivial⟩
      · simp only [if_neg h1]
        obtain ⟨i1, i2, i3⟩ := ih (fram_dev_record_success
          { d with hal := (fram_hal_mock_write d.hal addr (data.take chunk)).2,
                   write_count := (d.write_count + 1) % U32 })
          ((addr + chunk) % U32) (data.drop chunk)
        exact ⟨i1, i2, by rw [i3]; rfl⟩

/-- Two states differ at most in the flag iff they agree once it is set. -/
theorem dev_same_iff (d1 d2 : fram_dev_t) :
    DevSameButHealthy d1 d2 ↔ dev_set_healthy d1 = dev_set_healthy d2 := by
  cases d1
  cases d2
  simp only [DevSameButHealthy, dev_set_healthy, fram_dev_t.mk.injEq, and_true, true_and]

/-- The function `fram_dev_read` does not look at the `healthy` flag. -/
theorem fram_dev_read_healthy (d : fram_dev_t) (offset len : Nat) :
    (fram_dev_read d offset len).1 = (fram_dev_read (dev_set_healthy d) offset len).1 ∧
    (fram_dev_read d offset len).2.1 = (fram_dev_read (dev_set_healthy d) offset len).2.1 ∧
    dev_set_healthy (fram_dev_read d offset len).2.2
      = dev_set_healthy (fram_dev_read (dev_set_healthy d) offset len).2.2 ∧
    fram_dev_read_calls d offset len = fram_dev_read_calls (dev_set_healthy d) offset len := by
  have hh : (dev_set_healthy d).hal = d.hal := rfl
  have hl : fram_dev_lock (dev_set_healthy d) = fram_dev_lock d := rfl
  unfold fram_dev_read fram_dev_read_calls
  simp only [hh, hl]
  split_ifs with h0 h1 h2
  · exact ⟨rfl, rfl, rfl, rfl⟩
  · exact ⟨rfl, rfl, rfl, rfl⟩
  · exact ⟨rfl, rfl, dev_set_healthy_error _, rfl⟩
  · exact fram_dev_read_loop_healthy _ _ _ _ _ _
  · exact fram_dev_read_loop_healthy _ _ _ _ _ _

/-- The function `fram_dev_write` does not look at the `healthy` flag. -/
theorem fram_dev_write_healthy (d : fram_dev_t) (offset : Nat) (data : List Nat) :
    (fram_dev_write d offset data).1 = (fram_dev_write (dev_set_healthy d) offset data).1 ∧
    dev_set_healthy (fram_dev_write d offset data).2
      = dev_set_healthy (fram_dev_write (dev_set_healthy d) offset data).2 ∧
    fram_dev_write_calls d offset data
      = fram_dev_write_calls (dev_set_healthy d) offset data := by
  have hh : (dev_set_healthy d).hal = d.hal := rfl
  have hl : fram_dev_lock (dev_set_healthy d) = fram_dev_lock d := rfl
  unfold fram_dev_write fram_dev_write_calls
  simp only [hh, hl]
  split_ifs with h0 h1 h2
  · exact ⟨rfl, rfl, rfl⟩
  · exact ⟨rfl, rfl, rfl⟩
  · exact ⟨rfl, dev_set_healthy_error _, rfl⟩
  · exact fram_dev_write_loop_healthy _ _ _ _ _
  · exact fram_dev_write_loop_healthy _ _ _ _ _

/-- C40. The healthy flag does not gate I/O: for two device states that differ
at most in the `healthy` flag and any offset, length and data, `fram_dev_read`
issues the same HAL reads, returns the same result and the same bytes, and
`fram_dev_write` issues the same HAL writes and returns the same result; the
devices afterwards have the same HAL (hence the same media content) and again
differ at most in the flag. The state after `fram_dev_deinit`, and the state
with the flag cleared, are such states. -/
theorem dev_healthy_does_not_gate_io (d1 d2 : fram_dev_t) (h : DevSameButHealthy d1 d2)
    (offset len : Nat) (data : List Nat) :
    (fram_dev_read_calls d1 offset len = fram_dev_read_calls d2 offset len ∧
     (fram_dev_read d1 offset len).1 = (fram_dev_read d2 offset len).1 ∧
     (fram_dev_read d1 offset len).2.1 = (fram_dev_read d2 offset len).2.1 ∧
     (fram_dev_read d1 offset len).2.2.hal = (fram_dev_read d2 offset len).2.2.hal ∧
     DevSameButHealthy (fram_dev_read d1 offset len).2.2 (fram_dev_read d2 offset len).2.2) ∧
    (fram_dev_write_calls d1 offset data = fram_dev_write_calls d2 offset data ∧
     (fram_dev_write d1 offset data).1 = (fram_dev_write d2 offset data).1 ∧
     (fram_dev_write d1 offset data).2.hal = (fram_dev_write d2 offset data).2.hal ∧
     DevSameButHealthy (fram_dev_write d1 offset data).2 (fram_dev_write d2 offset data).2) ∧
    DevSameButHealthy d1 (fram_dev_deinit d1).2 ∧
    DevSameButHealthy d1 { d1 with healthy := false } := by
  have e := (dev_same_iff d1 d2).1 h
  obtain ⟨a1, a2, a3, a4⟩ := fram_dev_read_healthy d1 offset len
  obtain ⟨b1, b2, b3, b4⟩ := fram_dev_read_healthy d2 offset len
  obtain ⟨c1, c2, c3⟩ := fram_dev_write_healthy d1 offset data
  obtain ⟨f1, f2, f3⟩ := fram_dev_write_healthy d2 offset data
  rw [e] at a1 a2 a3 a4 c1 c2 c3
  have hr : DevSameButHealthy (fram_dev_read d1 offset len).2.2
      (fram_dev_read d2 offset len).2.2 := (dev_same_iff _ _).2 (a3.trans b3.symm)
  have hw : DevSameButHealthy (fram_dev_write d1 offset data).2
      (fram_dev_write d2 offset data).2 := (dev_same_iff _ _).2 (c2.trans f2.symm)
  refine ⟨⟨a4.trans b4.symm, a1.trans b1.symm, a2.trans b2.symm, hr.1, hr⟩,
    ⟨c3.trans f3.symm, c1.trans f1.symm, hw.1, hw⟩, ?_, ?_⟩
  · exact ⟨rfl, rfl, rfl, rfl, rfl, rfl, rfl, rfl⟩
  · exact ⟨rfl, rfl, rfl, rfl, rfl, rfl, rfl, rfl⟩

/-- C40 at the device of the test set-up and the same device after
`fram_dev_deinit`. -/
theorem dev_healthy_does_not_gate_io_witness :
    DevSameButHealthy (mock_dev (fun _ => 0xFF) 32768)
      (fram_dev_deinit (mock_dev (fun _ => 0xFF) 32768)).2 ∧
    (fram_dev_write (mock_dev (fun _ => 0xFF) 32768) 16 [1, 2, 3]).1
      = (fram_dev_write (fram_dev_deinit (mock_dev (fun _ => 0xFF) 32768)).2 16 [1, 2, 3]).1 ∧
    (fram_dev_read (mock_dev (fun _ => 0xFF) 32768) 16 3).2.1
      = (fram_dev_read (fram_dev_deinit (mock_dev (fun _ => 0xFF) 32768)).2 16 3).2.1 :=
  ⟨⟨rfl, rfl, rfl, rfl, rfl, rfl, rfl, rfl⟩,
   (dev_healthy_does_not_gate_io (mock_dev (fun _ => 0xFF) 32768)
      (fram_dev_deinit (mock_dev (fun _ => 0xFF) 32768)).2
      ⟨rfl, rfl, rfl, rfl, rfl, rfl, rfl, rfl⟩ 16 3 [1, 2, 3]).2.1.2.1,
   (dev_healthy_does_not_gate_io (mock_dev (fun _ => 0xFF) 32768)
      (fram_dev_deinit (mock_dev (fun _ => 0xFF) 32768)).2
      ⟨rfl, rfl, rfl, rfl, rfl, rfl, rfl, rfl⟩ 16 3 [1, 2, 3]).1.2.2.1⟩

/-! ## The chunks of a device transfer -/

/-- The number of chunks of at most `mt` bytes that carry `len` bytes. -/
theorem chunk_count_step (len mt : Nat) (hmt : 0 < mt) (hlen : 0 < len) :
    (len + mt - 1) / mt
      = 1 + (len - (if len > mt then mt else len) + mt - 1) / mt := by
  by_cases h : len > mt
  · rw [if_pos h]
    have e1 : len + mt - 1 = (len - 1) + mt := by omega
    have e2 : len - mt + mt - 1 = len - 1 := by omega
    rw [e1, e2, Nat.add_div_right _ hmt]
    omega
  · rw [if_neg h]
    have e1 : len - len + mt - 1 = mt - 1 := by omega
    have e2 : len + mt - 1 = (len - 1) + mt := by omega
    have e3 : (mt - 1) / mt = 0 := Nat.div_eq_of_lt (by omega)
    have e4 : (len - 1) / mt = 0 := Nat.div_eq_of_lt (by omega)
    rw [e1, e3, e2, Nat.add_div_right _ hmt, e4]

theorem chunk_count_zero (mt : Nat) (hmt : 0 < mt) : (0 + mt - 1) / mt = 0 := by
  rw [Nat.zero_add]
  exact Nat.div_eq_of_lt (by omega)

theorem count_mod_step (wc k : Nat) :
    ((wc + 1) % U32 + k) % U32 = (wc + (1 + k)) % U32 := by
  rw [U32_eq]
  omega

/-- On a working device the chunk loop of `fram_dev_write` writes the data in
chunks of at most `mt` bytes at consecutive addresses and counts them. -/
theorem fram_dev_write_loop_chunks (size mt : Nat) (hmt : 0 < mt) :
    ∀ (fuel : Nat) (dev : fram_dev_t) (mem : Nat → Nat) (addr : Nat) (data : List Nat),
      DevOK dev mem size → data.length ≤ fuel → addr + data.length ≤ size →
      ∃ dev1, fram_dev_write_loop fuel dev addr data mt = (ESP_OK, dev1)
        ∧ DevOK dev1 (mem_write mem addr data) size
        ∧ (data.length = 0 → dev1.write_count = dev.write_count)
        ∧ (0 < data.length →
            dev1.write_count = (dev.write_count + (data.length + mt - 1) / mt) % U32)
        ∧ dev1.read_count = dev.read_count
        ∧ WriteChunks mt addr data (fram_dev_write_loop_calls fuel dev addr data mt)
        ∧ (fram_dev_write_loop_calls fuel dev addr data mt).length
            = (data.length + mt - 1) / mt := by
  have hnil : ∀ (fuel : Nat) (dev : fram_dev_t) (mem : Nat → Nat) (addr : Nat),
      DevOK dev mem size →
      ∃ dev1, fram_dev_write_loop fuel dev addr [] mt = (ESP_OK, dev1)
        ∧ DevOK dev1 (mem_write mem addr []) size
        ∧ (([] : List Nat).length = 0 → dev1.write_count = dev.write_count)
        ∧ (0 < ([] : List Nat).length →
            dev1.write_count
              = (dev.write_count + (([] : List Nat).length + mt - 1) / mt) % U32)
        ∧ dev1.read_count = dev.read_count
        ∧ WriteChunks mt addr [] (fram_dev_write_loop_calls fuel dev addr [] mt)
        ∧ (fram_dev_write_loop_calls fuel dev addr [] mt).length
            = (([] : List Nat).length + mt - 1) / mt := by
    intro fuel dev mem addr hd
    have hz : (([] : List Nat).length + mt - 1) / mt = 0 := chunk_count_zero mt hmt
    have hcalls : fram_dev_write_loop_calls fuel dev addr [] mt = [] := by
      cases fuel with
      | zero => rfl
      | succ n => rw [fram_dev_write_loop_calls, if_pos List.length_nil]
    have hloop : fram_dev_write_loop fuel dev addr [] mt = (ESP_OK, dev) := by
      cases fuel with
      | zero => rw [fram_dev_write_loop, if_pos List.length_nil]
      | succ n => rw [fram_dev_write_loop, if_pos List.length_nil]
    refine ⟨dev, hloop, by rw [mem_write_nil]; exact hd, fun _ => rfl,
      fun h => absurd h (Nat.lt_irrefl 0), rfl, ?_, ?_⟩
    · rw [hcalls]
      exact rfl
    · rw [hcalls, hz]
      rfl
  intro fuel
  induction fuel with
  | zero =>
    intro dev mem addr data hd hf _
    have h0 : data = [] := List.eq_nil_of_length_eq_zero (by omega)
    subst h0
    exact hnil 0 dev mem addr hd
  | succ fuel ih =>
    intro dev mem addr data hd hf hr
    by_cases h0 : data.length = 0
    · have h0 : data = [] := List.eq_nil_of_length_eq_zero h0
      subst h0
      exact hnil _ dev mem addr hd
    · obtain ⟨hm, hnf, hni, hse, hsl, hme⟩ := hd
      have hcnt := chunk_count_step data.length mt hmt (by omega)
      obtain ⟨chunk, hc⟩ : ∃ chunk, chunk = (if data.length > mt then mt else data.length) :=
        ⟨_, rfl⟩
      rw [← hc] at hcnt
      have hchunk : 0 < chunk ∧ chunk ≤ data.length ∧ chunk ≤ mt := by
        rw [hc]
        split <;> omega
      obtain ⟨hc0, hcr, hcm⟩ := hchunk
      have hlt : (data.take chunk).length = chunk := by
        rw [List.length_take]; omega
      have hwr := fram_hal_mock_write_ok dev.hal addr (data.take chunk) hnf
        (by omega) (by omega)
      have hU : (addr + chunk) % U32 = addr + chunk := Nat.mod_eq_of_lt (by omega)
      have hdl : (data.drop chunk).length = data.length - chunk := List.length_drop _ _
      obtain ⟨dev2, h2, hd2, hwa, hwb, hrc, hch, hln⟩ := ih
        (fram_dev_record_success
          { dev with
            hal := { dev.hal with ctx := { dev.hal.ctx with
              op_count := (dev.hal.ctx.op_count + 1) % U32,
              buffer := mem_write dev.hal.ctx.buffer addr (data.take chunk) } },
            write_count := (dev.write_count + 1) % U32 })
        (mem_write mem addr (data.take chunk)) (addr + chunk) (data.drop chunk)
        ⟨hm, hnf, hni, hse, hsl, by rw [← hme]; rfl⟩ (by omega) (by omega)
      rw [mem_write_chunks _ _ _ _ hcr] at hd2
      rw [hdl] at hwa hwb hln
      have hw1 : (fram_dev_record_success
          { dev with
            hal := { dev.hal with ctx := { dev.hal.ctx with
              op_count := (dev.hal.ctx.op_count + 1) % U32,
              buffer := mem_write dev.hal.ctx.buffer addr (data.take chunk) } },
            write_count := (dev.write_count + 1) % U32 }).write_count
          = (dev.write_count + 1) % U32 := rfl
      rw [hw1] at hwa hwb
      refine ⟨dev2, ?_, hd2, fun h => absurd h h0, fun _ => ?_, hrc, ?_, ?_⟩
      · rw [fram_dev_write_loop, if_neg h0]
        simp only [← hc, hwr, ne_eq, not_true_eq_false, if_false, hU]
        exact h2
      · rw [hcnt]
        by_cases hz : data.length - chunk = 0
        · rw [hwa hz, hz, chunk_count_zero mt hmt]
        · rw [hwb (by omega), count_mod_step]
      · rw [fram_dev_write_loop_calls, if_neg h0]
        simp only [← hc, hwr, ne_eq, not_true_eq_false, if_false, hU]
        refine ⟨rfl, ?_, ?_, ?_, ?_⟩
        · show 1 ≤ (data.take chunk).length
          omega
        · show (data.take chunk).length ≤ mt
          omega
        · show data.take chunk = data.take (data.take chunk).length
          rw [hlt]
        · show WriteChunks mt (addr + (data.take chunk).length)
            (data.drop (data.take chunk).length) _
          rw [hlt]
          exact hch
      · rw [fram_dev_write_loop_calls, if_neg h0]
        simp only [← hc, hwr, ne_eq, not_true_eq_false, if_false, hU, List.length_cons]
        rw [hln, hcnt]
        omega

/-- On a working device the chunk loop of `fram_dev_read` reads the range in
chunks of at most `mt` bytes at consecutive addresses and counts them. -/
theorem fram_dev_read_loop_chunks (mem : Nat → Nat) (size mt : Nat) (hmt : 0 < mt) :
    ∀ (fuel : Nat) (dev : fram_dev_t) (addr remaining : Nat) (out : List Nat),
      DevOK dev mem size → remaining ≤ fuel → addr + remaining ≤ size →
      ∃ dev1, fram_dev_read_loop fuel dev addr remaining mt out
          = (ESP_OK, out ++ mem_read mem addr remaining, dev1)
        ∧ DevOK dev1 mem size
        ∧ (remaining = 0 → dev1.read_count = dev.read_count)
        ∧ (0 < remaining →
            dev1.read_count = (dev.read_count + (remaining + mt - 1) / mt) % U32)
        ∧ dev1.write_count = dev.write_count
        ∧ ReadChunks mt addr remaining (fram_dev_read_loop_calls fuel dev addr remaining mt)
        ∧ (fram_dev_read_loop_calls fuel dev addr remaining mt).length
            = (remaining + mt - 1) / mt := by
  have hnil : ∀ (fuel : Nat) (dev : fram_dev_t) (addr : Nat) (out : List Nat),
      DevOK dev mem size →
      ∃ dev1, fram_dev_read_loop fuel dev addr 0 mt out
          = (ESP_OK, out ++ mem_read mem addr 0, dev1)
        ∧ DevOK dev1 mem size
        ∧ (0 = 0 → dev1.read_count = dev.read_count)
        ∧ (0 < 0 → dev1.read_count = (dev.read_count + (0 + mt - 1) / mt) % U32)
        ∧ dev1.write_count = dev.write_count
        ∧ ReadChunks mt addr 0 (fram_dev_read_loop_calls fuel dev addr 0 mt)
        ∧ (fram_dev_read_loop_calls fuel dev addr 0 mt).length = (0 + mt - 1) / mt := by
    intro fuel dev addr out hd
    have hz : (0 + mt - 1) / mt = 0 := chunk_count_zero mt hmt
    have hcalls : fram_dev_read_loop_calls fuel dev addr 0 mt = [] := by
      cases fuel with
      | zero => rfl
      | succ n => rw [fram_dev_read_loop_calls, if_pos rfl]
    have hloop : fram_dev_read_loop fuel dev addr 0 mt out
        = (ESP_OK, out ++ mem_read mem addr 0, dev) := by
      rw [mem_read_zero, List.append_nil]
      cases fuel with
      | zero => rw [fram_dev_read_loop, if_pos rfl]
      | succ n => rw [fram_dev_read_loop, if_pos rfl]
    refine ⟨dev, hloop, hd, fun _ => rfl, fun h => absurd h (Nat.lt_irrefl 0), rfl, ?_, ?_⟩
    · rw [hcalls]
      exact rfl
    · rw [hcalls, hz]
      rfl
  intro fuel
  induction fuel with
  | zero =>
    intro dev addr remaining out hd hf _
    have h0 : remaining = 0 := by omega
    subst h0
    exact hnil 0 dev addr out hd
  | succ fuel ih =>
    intro dev addr remaining out hd hf hr
    by_cases h0 : remaining = 0
    · subst h0
      exact hnil _ dev addr out hd
    · obtain ⟨hm, hnf, hni, hse, hsl, hme⟩ := hd
      have hcnt := chunk_count_step remaining mt hmt (by omega)
      obtain ⟨chunk, hc⟩ : ∃ chunk, chunk = (if remaining > mt then mt else remaining) :=
        ⟨_, rfl⟩
      rw [← hc] at hcnt
      have hchunk : 0 < chunk ∧ chunk ≤ remaining ∧ chunk ≤ mt := by
        rw [hc]
        split <;> omega
      obtain ⟨hc0, hcr, hcm⟩ := hchunk
      have hrd := fram_hal_mock_read_ok dev.hal addr chunk hnf hni hc0 (by omega)
      have hU : (addr + chunk) % U32 = addr + chunk := Nat.mod_eq_of_lt (by omega)
      obtain ⟨dev2, h2, hd2, hwa, hwb, hrc, hch, hln⟩ := ih
        (fram_dev_record_success
          { dev with
            hal := { dev.hal with ctx := { dev.hal.ctx with
              op_count := (dev.hal.ctx.op_count + 1) % U32 } },
            read_count := (dev.read_count + 1) % U32 })
        (addr + chunk) (remaining - chunk) (out ++ mem_read mem addr chunk)
        ⟨hm, hnf, hni, hse, hsl, hme⟩ (by omega) (by omega)
      have hw1 : (fram_dev_record_success
          { dev with
            hal := { dev.hal with ctx := { dev.hal.ctx with
              op_count := (dev.hal.ctx.op_count + 1) % U32 } },
            read_count := (dev.read_count + 1) % U32 }).read_count
          = (dev.read_count + 1) % U32 := rfl
      rw [hw1] at hwa hwb
      refine ⟨dev2, ?_, hd2, fun h => absurd h h0, fun _ => ?_, hrc, ?_, ?_⟩
      · have e : fram_dev_read_loop (fuel + 1) dev addr remaining mt out
            = fram_dev_read_loop fuel
                (fram_dev_record_success
                  { dev with
                    hal := { dev.hal with ctx := { dev.hal.ctx with
                      op_count := (dev.hal.ctx.op_count + 1) % U32 } },
                    read_count := (dev.read_count + 1) % U32 })
                (addr + chunk) (remaining - chunk) mt (out ++ mem_read mem addr chunk) := by
          rw [fram_dev_read_loop, if_neg h0]
          simp only [← hc, hrd, ne_eq, not_true_eq_false, if_false, hU, hme]
        rw [e, h2, List.append_assoc, ← mem_read_add, Nat.add_sub_cancel' hcr]
      · rw [hcnt]
        by_cases hz : remaining - chunk = 0
        · rw [hwa hz, hz, chunk_count_zero mt hmt]
        · rw [hwb (by omega), count_mod_step]
      · rw [fram_dev_read_loop_calls, if_neg h0]
        simp only [← hc, hrd, ne_eq, not_true_eq_false, if_false, hU]
        exact ⟨rfl, hc0, hcm, hcr, hch⟩
      · rw [fram_dev_read_loop_calls, if_neg h0]
        simp only [← hc, hrd, ne_eq, not_true_eq_false, if_false, hU, List.length_cons]
        rw [hln, hcnt]
        omega

/-- The effective transfer limit of a device: `max_transfer`, or the device
size when it is zero. -/
theorem dev_max_transfer_pos (dev : fram_dev_t) (mem : Nat → Nat) (size len offset : Nat)
    (hd : DevOK dev mem size) (hlen : 0 < len) (hr : offset + len ≤ size) :
    0 < (if dev.hal.max_transfer ≠ 0 then dev.hal.max_transfer else dev.hal.size_bytes) := by
  have := hd.size_eq
  split <;> omega

/-- On a working device `fram_dev_write` of in-range data is chunked. -/
theorem fram_dev_write_chunks (dev : fram_dev_t) (mem : Nat → Nat) (size offset m : Nat)
    (data : List Nat) (hd : DevOK dev mem size) (hlen : 0 < data.length)
    (hr : offset + data.length ≤ size)
    (hm : m = if dev.hal.max_transfer ≠ 0 then dev.hal.max_transfer else dev.hal.size_bytes) :
    ∃ dev1, fram_dev_write dev offset data = (ESP_OK, dev1)
      ∧ DevOK dev1 (mem_write mem offset data) size
      ∧ dev1.write_count = (dev.write_count + (data.length + m - 1) / m) % U32
      ∧ dev1.read_count = dev.read_count
      ∧ WriteChunks m offset data (fram_dev_write_calls dev offset data)
      ∧ (fram_dev_write_calls dev offset data).length = (data.length + m - 1) / m := by
  subst hm
  have hmt := dev_max_transfer_pos dev mem size _ offset hd hlen hr
  obtain ⟨dev1, h1, hd1, _, hw, hrc, hch, hln⟩ :=
    fram_dev_write_loop_chunks size _ hmt data.length dev mem offset data hd (Nat.le_refl _) hr
  have hs := hd.size_eq
  have hcalls : fram_dev_write_calls dev offset data
      = fram_dev_write_loop_calls data.length dev offset data
          (if dev.hal.max_transfer ≠ 0 then dev.hal.max_transfer else dev.hal.size_bytes) := by
    unfold fram_dev_write_calls
    rw [if_neg (by omega), if_neg (by omega)]
    rw [if_neg (fun h => h (by rw [fram_dev_lock, hd.mutex_free]; rfl))]
  refine ⟨dev1, ?_, hd1, hw hlen, hrc, ?_, ?_⟩
  · unfold fram_dev_write
    rw [if_neg (by omega), if_neg (by omega)]
    simp only [fram_dev_lock, hd.mutex_free, mutex_take, ne_eq, not_true_eq_false, if_false]
    exact h1
  · rw [hcalls]
    exact hch
  · rw [hcalls]
    exact hln

/-- On a working device `fram_dev_read` of an in-range span is chunked. -/
theorem fram_dev_read_chunks (dev : fram_dev_t) (mem : Nat → Nat) (size offset len m : Nat)
    (hd : DevOK dev mem size) (hlen : 0 < len) (hr : offset + len ≤ size)
    (hm : m = if dev.hal.max_transfer ≠ 0 then dev.hal.max_transfer else dev.hal.size_bytes) :
    ∃ dev1, fram_dev_read dev offset len = (ESP_OK, mem_read mem offset len, dev1)
      ∧ DevOK dev1 mem size
      ∧ dev1.read_count = (dev.read_count + (len + m - 1) / m) % U32
      ∧ dev1.write_count = dev.write_count
      ∧ ReadChunks m offset len (fram_dev_read_calls dev offset len)
      ∧ (fram_dev_read_calls dev offset len).length = (len + m - 1) / m := by
  subst hm
  have hmt := dev_max_transfer_pos dev mem size _ offset hd hlen hr
  obtain ⟨dev1, h1, hd1, _, hw, hrc, hch, hln⟩ :=
    fram_dev_read_loop_chunks mem size _ hmt len dev offset len [] hd (Nat.le_refl _) hr
  have hs := hd.size_eq
  have hcalls : fram_dev_read_calls dev offset len
      = fram_dev_read_loop_calls len dev offset len
          (if dev.hal.max_transfer ≠ 0 then dev.hal.max_transfer else dev.hal.size_bytes) := by
    unfold fram_dev_read_calls
    rw [if_neg (by omega), if_neg (by omega)]
    rw [if_neg (fun h => h (by rw [fram_dev_lock, hd.mutex_free]; rfl))]
  refine ⟨dev1, ?_, hd1, hw hlen, hrc, ?_, ?_⟩
  · unfold fram_dev_read
    rw [if_neg (by omega), if_neg (by omega)]
    simp only [fram_dev_lock, hd.mutex_free, mutex_take, ne_eq, not_true_eq_false, if_false]
    simpa using h1
  · rw [hcalls]
    exact hch
  · rw [hcalls]
    exact hln

/-- C35. Device chunking is transparent, with the counters taken modulo 2^32.
On a working memory-backed device, for in-range `offset`, at least one byte and
`m` the effective `max_transfer` (the device size when it is 0):
`fram_dev_write` returns `ESP_OK` and issues `ceil(len / m)` HAL writes, each of
1 to `m` bytes, at consecutive addresses from `offset`, carrying the data in
order; the media afterwards equals that after one HAL write of the whole
buffer; `write_count` becomes `(write_count + ceil(len / m)) mod 2^32`.
`fram_dev_read` returns `ESP_OK` and the bytes of one whole HAL read, issues
`ceil(len / m)` HAL reads covering the range in order, and `read_count` becomes
`(read_count + ceil(len / m)) mod 2^32`. -/
theorem dev_chunking_transparent (dev : fram_dev_t) (mem : Nat → Nat)
    (size offset len m : Nat) (data : List Nat) (hd : DevOK dev mem size)
    (hdata : 0 < data.length) (hw : offset + data.length ≤ size)
    (hlen : 0 < len) (hr : offset + len ≤ size)
    (hm : m = if dev.hal.max_transfer ≠ 0 then dev.hal.max_transfer else dev.hal.size_bytes) :
    ((fram_dev_write dev offset data).1 = ESP_OK ∧
     WriteChunks m offset data (fram_dev_write_calls dev offset data) ∧
     (fram_dev_write_calls dev offset data).length = (data.length + m - 1) / m ∧
     (fram_dev_write dev offset data).2.hal.ctx.buffer
       = (fram_hal_mock_write dev.hal offset data).2.ctx.buffer ∧
     (fram_dev_write dev offset data).2.hal.ctx.buffer = mem_write mem offset data ∧
     (fram_dev_write dev offset data).2.write_count
       = (dev.write_count + (data.length + m - 1) / m) % U32 ∧
     (fram_dev_write dev offset data).2.read_count = dev.read_count) ∧
    ((fram_dev_read dev offset len).1 = ESP_OK ∧
     ReadChunks m offset len (fram_dev_read_calls dev offset len) ∧
     (fram_dev_read_calls dev offset len).length = (len + m - 1) / m ∧
     (fram_dev_read dev offset len).2.1 = (fram_hal_mock_read dev.hal offset len).2.1 ∧
     (fram_dev_read dev offset len).2.1 = mem_read mem offset len ∧
     (fram_dev_read dev offset len).2.2.hal.ctx.buffer = mem ∧
     (fram_dev_read dev offset len).2.2.read_count
       = (dev.read_count + (len + m - 1) / m) % U32 ∧
     (fram_dev_read dev offset len).2.2.write_count = dev.write_count) := by
  obtain ⟨dw, hw1, hw2, hw3, hw4, hw5, hw6⟩ :=
    fram_dev_write_chunks dev mem size offset m data hd hdata hw hm
  obtain ⟨dr, hr1, hr2, hr3, hr4, hr5, hr6⟩ :=
    fram_dev_read_chunks dev mem size offset len m hd hlen hr hm
  have hs := hd.size_eq
  have e1 := fram_hal_mock_write_ok dev.hal offset data hd.no_fail hdata (by omega)
  have e2 := fram_hal_mock_read_ok dev.hal offset len hd.no_fail hd.no_inject hlen (by omega)
  rw [hw1, hr1, e1, e2]
  refine ⟨⟨rfl, hw5, hw6, ?_, hw2.mem_eq, hw3, hw4⟩,
    ⟨rfl, hr5, hr6, ?_, rfl, hr2.mem_eq, hr3, hr4⟩⟩
  · show dw.hal.ctx.buffer = mem_write dev.hal.ctx.buffer offset data
    rw [hw2.mem_eq, hd.mem_eq]
  · show mem_read mem offset len = mem_read dev.hal.ctx.buffer offset len
    rw [hd.mem_eq]

theorem example_dev_wrap_count_ok :
    DevOK example_dev_wrap_count (fun _ => 0xFF) 32768 :=
  ⟨rfl, rfl, rfl, rfl, by rw [U32_eq]; omega, rfl⟩

/-- C35 on the device of the test set-up (32768 bytes, one transfer may carry
the whole device): a write of three bytes at offset 16 is one HAL write and a
read of three bytes is one HAL read. -/
theorem dev_chunking_transparent_witness :
    DevOK (mock_dev (fun _ => 0xFF) 32768) (fun _ => 0xFF) 32768 ∧
    (fram_dev_write (mock_dev (fun _ => 0xFF) 32768) 16 [1, 2, 3]).1 = ESP_OK ∧
    (fram_dev_write_calls (mock_dev (fun _ => 0xFF) 32768) 16 [1, 2, 3]).length
      = (3 + 32768 - 1) / 32768 ∧
    (fram_dev_read (mock_dev (fun _ => 0xFF) 32768) 16 3).2.1
      = mem_read (fun _ => 0xFF) 16 3 :=
  ⟨⟨rfl, rfl, rfl, rfl, by rw [U32_eq]; omega, rfl⟩,
   (dev_chunking_transparent (mock_dev (fun _ => 0xFF) 32768) (fun _ => 0xFF) 32768 16 3 32768
      [1, 2, 3] ⟨rfl, rfl, rfl, rfl, by rw [U32_eq]; omega, rfl⟩
      (by decide) (by decide) (by decide) (by decide) rfl).1.1,
   (dev_chunking_transparent (mock_dev (fun _ => 0xFF) 32768) (fun _ => 0xFF) 32768 16 3 32768
      [1, 2, 3] ⟨rfl, rfl, rfl, rfl, by rw [U32_eq]; omega, rfl⟩
      (by decide) (by decide) (by decide) (by decide) rfl).1.2.2.1,
   (dev_chunking_transparent (mock_dev (fun _ => 0xFF) 32768) (fun _ => 0xFF) 32768 16 3 32768
      [1, 2, 3] ⟨rfl, rfl, rfl, rfl, by rw [U32_eq]; omega, rfl⟩
      (by decide) (by decide) (by decide) (by decide) rfl).2.2.2.2.2.1⟩

/-- Counterexample for C35: on a working 32768-byte device whose counters stand
at 2^32 - 1, a one-byte `fram_dev_write` at offset 0 returns `ESP_OK` with one
HAL write (`ceil(1 / 32768) = 1`) and leaves `write_count = 0`, and a one-byte
`fram_dev_read` returns `ESP_OK` and leaves `read_count = 0`: the counters did
not increase by 1. -/
theorem dev_chunking_transparent_counterexample :
    DevOK example_dev_wrap_count (fun _ => 0xFF) 32768 ∧
    example_dev_wrap_count.write_count = 4294967295 ∧
    example_dev_wrap_count.read_count = 4294967295 ∧
    (1 + 32768 - 1) / 32768 = 1 ∧
    (fram_dev_write example_dev_wrap_count 0 [0]).1 = ESP_OK ∧
    (fram_dev_write_calls example_dev_wrap_count 0 [0]).length = 1 ∧
    (fram_dev_write example_dev_wrap_count 0 [0]).2.write_count = 0 ∧
    (fram_dev_read example_dev_wrap_count 0 1).1 = ESP_OK ∧
    (fram_dev_read example_dev_wrap_count 0 1).2.2.read_count = 0 ∧
    ¬ ((fram_dev_write example_dev_wrap_count 0 [0]).2.write_count
        = example_dev_wrap_count.write_count + (1 + 32768 - 1) / 32768) :=
  ⟨example_dev_wrap_count_ok, rfl, rfl, rfl, rfl, rfl, rfl, rfl, rfl, by decide⟩

/-! ## The index invariant of the ring -/

/-- The run length that the second recovery loop returns is at most the
capacity, whatever the partition manager and the device do. -/
theorem ring_init_walk_le (ring : fram_ring_t) :
    ∀ (fuel : Nat) (pm : fram_pm_t) (run_len e s : Nat), run_len ≤ ring.capacity →
      (fram_ring_init_walk ring fuel pm run_len e s).1 ≤ ring.capacity := by
  intro fuel
  induction fuel with
  | zero =>
    intro pm run_len e s h
    exact h
  | succ fuel ih =>
    intro pm run_len e s h
    unfold fram_ring_init_walk
    split_ifs with h1
    · generalize fram_ring_validate_slot ring pm s = r
      obtain ⟨c, o, pm2⟩ := r
      cases o with
      | none => cases c <;> exact h
      | some hdr =>
        cases c <;> first
          | exact h
          | (dsimp only
             split_ifs with h2 h3
             · exact h
             · exact le_trans (Nat.mod_le _ _) (by omega)
             · exact ih _ _ _ _ (by omega))
    · exact h

/-- The tail index relation after the head moved one slot forward and the
count grew by one. -/
theorem ring_tail_step (head count cap : Nat) (hh : head < cap) (hc : count < cap) :
    (head + cap - count) % cap = ((head + 1) % cap + cap - (count + 1)) % cap := by
  by_cases h : head + 1 < cap
  · rw [Nat.mod_eq_of_lt h]
    have e : head + 1 + cap - (count + 1) = head + cap - count := by omega
    rw [e]
  · have e1 : head + 1 = cap := by omega
    rw [e1, Nat.mod_self]
    have e2 : head + cap - count = (cap - 1 - count) + cap := by omega
    have e3 : 0 + cap - (count + 1) = cap - 1 - count := by omega
    rw [e2, e3, Nat.add_mod_right]

/-- The tail index relation of a full ring. -/
theorem ring_tail_full (head cap : Nat) (hh : head < cap) :
    (head + cap - cap) % cap = head := by
  rw [Nat.add_sub_cancel]
  exact Nat.mod_eq_of_lt hh

/-- The tail index as `fram_ring_init` computes it in 32-bit arithmetic. -/
theorem ring_tail_init (head w cap : Nat) (hh : head < cap) (hw : w ≤ cap)
    (hc : cap + cap < U32) :
    ((head + cap) % U32 + U32 - w) % U32 % cap = (head + cap - w) % cap := by
  have e1 : (head + cap) % U32 = head + cap := Nat.mod_eq_of_lt (by omega)
  have e2 : head + cap + U32 - w = (head + cap - w) + U32 := by omega
  have e3 : (head + cap - w) % U32 = head + cap - w := Nat.mod_eq_of_lt (by omega)
  rw [e1, e2, Nat.add_mod_right, e3]

/-- A ring that `fram_ring_init` returned with `ESP_OK` satisfies the index
invariant, whatever the device did during the recovery scan. -/
theorem ring_init_index_inv (K : Kconfig) (ring0 ring1 : fram_ring_t) (pm pm1 : fram_pm_t)
    (p : fram_partition_t) (cfg : fram_ring_config_t)
    (hK : K.FRAM_RING_MAX_PAYLOAD + RING_HEADER_SIZE + 1 < U32) (hsize : p.size < U32)
    (hfind : fram_pm_find pm cfg.partition_name = some p)
    (hinit : fram_ring_init K ring0 pm cfg = (ESP_OK, ring1, pm1)) :
    RingIndexInv ring1 p := by
  obtain ⟨hmp0, hmpK, hfit⟩ := ring_init_ok_cfg K ring0 ring1 pm pm1 p cfg hfind hK hinit
  have hcfg : ¬ (cfg.max_payload = 0 ∨ cfg.max_payload > K.FRAM_RING_MAX_PAYLOAD) := by omega
  have hes : (RING_HEADER_SIZE + cfg.max_payload + 1) % U32
      = RING_HEADER_SIZE + cfg.max_payload + 1 := Nat.mod_eq_of_lt (by omega)
  have h24 : RING_HEADER_SIZE = 24 := rfl
  have hespos : 0 < RING_HEADER_SIZE + cfg.max_payload + 1 := by omega
  obtain ⟨cap, hcapd⟩ : ∃ cap, cap = p.size / (RING_HEADER_SIZE + cfg.max_payload + 1) :=
    ⟨_, rfl⟩
  have hcap0 : 0 < cap := by
    rw [hcapd]
    exact Nat.div_pos hfit hespos
  have hmul : cap * (RING_HEADER_SIZE + cfg.max_payload + 1) ≤ p.size := by
    rw [hcapd]
    exact Nat.div_mul_le_self _ _
  have hcap2 : cap + cap < U32 := by
    have : cap * 2 ≤ cap * (RING_HEADER_SIZE + cfg.max_payload + 1) :=
      Nat.mul_le_mul_left _ (by omega)
    omega
  have hslots : ∀ s, s < cap → (s + 1) * (RING_HEADER_SIZE + cfg.max_payload + 1) ≤ p.size := by
    intro s hs
    exact le_trans (Nat.mul_le_mul_right _ (by omega)) hmul
  unfold fram_ring_init at hinit
  simp only [hfind] at hinit
  rw [if_neg hcfg, hes, ← hcapd, if_neg (by omega)] at hinit
  split_ifs at hinit with hf
  · injection hinit with _ h2
    injection h2 with h3 _
    subst h3
    exact ⟨rfl, hcap0, hcap0, Nat.zero_le _, by
      show 0 = (0 + cap - 0) % cap
      rw [Nat.zero_add, Nat.sub_zero, Nat.mod_self], hslots, rfl, hsize⟩
  · injection hinit with _ h2
    injection h2 with h3 _
    subst h3
    refine ⟨rfl, Nat.mod_lt _ hcap0, Nat.mod_lt _ hcap0, ?_, ?_, hslots, rfl, hsize⟩
    · exact ring_init_walk_le _ _ _ _ _ _ (Nat.zero_le _)
    · have hw := ring_init_walk_le
        { part := some p, entry_size := RING_HEADER_SIZE + cfg.max_payload + 1,
          max_payload := cfg.max_payload, capacity := cap, magic := cfg.magic,
          head_slot := 0, tail_slot := 0, head_seq := 0, count := 0,
          mutex := SemaphoreHandle_t.free, ready := false }
        cap
      dsimp only at hw ⊢
      generalize fram_ring_init_scan _ _ _ _ = sc at *
      have hw2 := hw sc.2 0 sc.1.highest_seq sc.1.highest_slot (Nat.zero_le _)
      exact ring_tail_init _ _ _ (Nat.mod_lt _ hcap0) hw2 hcap2

/-- The capacity of a ring with the index invariant is positive and small. -/
theorem ring_inv_cap_small (ring : fram_ring_t) (p : fram_partition_t)
    (h : RingIndexInv ring p) :
    0 < ring.capacity ∧ ring.capacity + ring.capacity < U32 := by
  have hpos : 0 < ring.capacity := Nat.lt_of_le_of_lt (Nat.zero_le _) h.head
  have hs := h.slots (ring.capacity - 1) (by omega)
  have hes := h.entry
  have hsm := h.small
  have h24 : RING_HEADER_SIZE = 24 := rfl
  have e : ring.capacity - 1 + 1 = ring.capacity := by omega
  rw [e] at hs
  have : ring.capacity * 2 ≤ ring.capacity * ring.entry_size :=
    Nat.mul_le_mul_left _ (by omega)
  exact ⟨hpos, by omega⟩

/-- The ring that a successful `fram_ring_append` leaves satisfies the index
invariant. -/
theorem ring_append_step_inv (ring : fram_ring_t) (p : fram_partition_t)
    (h : RingIndexInv ring p) :
    RingIndexInv
      (if ring.count < ring.capacity then
        { ring with
          head_seq := (ring.head_seq + 1) % U32
          head_slot := ((ring.head_slot + 1) % U32) % ring.capacity
          count := (ring.count + 1) % U32 }
      else
        { ring with
          head_seq := (ring.head_seq + 1) % U32
          head_slot := ((ring.head_slot + 1) % U32) % ring.capacity
          tail_slot := ((ring.tail_slot + 1) % U32) % ring.capacity }) p := by
  obtain ⟨hpos, hsmall⟩ := ring_inv_cap_small ring p h
  have hh := h.head
  have ht := h.tail
  have hc := h.count
  have e1 : (ring.head_slot + 1) % U32 = ring.head_slot + 1 := Nat.mod_eq_of_lt (by omega)
  have e2 : (ring.tail_slot + 1) % U32 = ring.tail_slot + 1 := Nat.mod_eq_of_lt (by omega)
  have e3 : (ring.count + 1) % U32 = ring.count + 1 := Nat.mod_eq_of_lt (by omega)
  rw [e1, e2, e3]
  split_ifs with hlt
  · refine ⟨h.part, Nat.mod_lt _ hpos, ht, ?_, ?_, h.slots, h.entry, h.small⟩
    · show ring.count + 1 ≤ ring.capacity
      omega
    · show ring.tail_slot
        = ((ring.head_slot + 1) % ring.capacity + ring.capacity - (ring.count + 1))
            % ring.capacity
      rw [← ring_tail_step _ _ _ hh hlt]
      exact h.tail_eq
  · have hfull : ring.count = ring.capacity := by omega
    have hte := h.tail_eq
    rw [hfull, ring_tail_full _ _ hh] at hte
    refine ⟨h.part, Nat.mod_lt _ hpos, Nat.mod_lt _ hpos, hc, ?_, h.slots, h.entry, h.small⟩
    show (ring.tail_slot + 1) % ring.capacity
      = ((ring.head_slot + 1) % ring.capacity + ring.capacity - ring.count) % ring.capacity
    rw [hfull, Nat.add_sub_cancel, Nat.mod_mod, hte]

/-- The invariant of the ring in either branch of a conditional result. -/
theorem ring_inv_ite (p : fram_partition_t) (c : Prop) [Decidable c]
    (a b : esp_err_t × fram_ring_t × fram_pm_t)
    (ha : RingIndexInv a.2.1 p) (hb : RingIndexInv b.2.1 p) :
    RingIndexInv (if c then a else b).2.1 p := by
  split_ifs
  · exact ha
  · exact hb

/-- A call of `fram_ring_append` keeps the index invariant, whether it
succeeds or fails. -/
theorem ring_append_index_inv (ring : fram_ring_t) (p : fram_partition_t) (pm : fram_pm_t)
    (payload : List Nat) (now : Nat) (h : RingIndexInv ring p) :
    RingIndexInv (fram_ring_append ring pm payload now).2.1 p := by
  have hs := ring_append_step_inv ring p h
  unfold fram_ring_append
  exact ring_inv_ite _ _ _ _ h (ring_inv_ite _ _ _ _ h (ring_inv_ite _ _ _ _ h
    (ring_inv_ite _ _ _ _ h (ring_inv_ite _ _ _ _ h hs))))

/-- A call of `fram_ring_clear` keeps the index invariant, whether it succeeds
or fails. -/
theorem ring_clear_index_inv (ring : fram_ring_t) (p : fram_partition_t) (pm : fram_pm_t)
    (h : RingIndexInv ring p) :
    RingIndexInv (fram_ring_clear ring pm).2.1 p := by
  obtain ⟨hpos, _⟩ := ring_inv_cap_small ring p h
  unfold fram_ring_clear
  exact ring_inv_ite _ _ _ _ h (ring_inv_ite _ _ _ _ h (ring_inv_ite _ _ _ _
    ⟨h.part, hpos, hpos, Nat.zero_le _, by
      show 0 = (0 + ring.capacity - 0) % ring.capacity
      rw [Nat.zero_add, Nat.sub_zero, Nat.mod_self], h.slots, h.entry, h.small⟩ h))

/-- Every run of `fram_ring_append` and `fram_ring_clear` calls keeps the
index invariant. -/
theorem ring_run_ops_inv (p : fram_partition_t) :
    ∀ (steps : List (fram_pm_t × ring_op)) (ring : fram_ring_t),
      RingIndexInv ring p → RingIndexInv (ring_run_ops ring steps) p := by
  intro steps
  induction steps with
  | nil =>
    intro ring h
    exact h
  | cons s rest ih =>
    intro ring h
    rw [ring_run_ops]
    apply ih
    obtain ⟨pm, op⟩ := s
    cases op with
    | append payload now => exact ring_append_index_inv ring p pm payload now h
    | clear => exact ring_clear_index_inv ring p pm h

/-- Every access inside a slot of a ring with the index invariant passes the
partition range check. -/
theorem ring_inv_slot_range (ring : fram_ring_t) (p : fram_partition_t)
    (h : RingIndexInv ring p) (s : Nat) (hs : s < ring.capacity) :
    (s + 1) * ring.entry_size ≤ p.size ∧
    fram_ring_slot_offset ring s = s * ring.entry_size ∧
    ∀ i len, i + len ≤ ring.entry_size →
      fram_pm_is_valid_range p (fram_ring_slot_offset ring s + i) len = true := by
  have hfit := h.slots s hs
  have hsm := h.small
  have hmul : (s + 1) * ring.entry_size = s * ring.entry_size + ring.entry_size :=
    Nat.succ_mul _ _
  have hoff : fram_ring_slot_offset ring s = s * ring.entry_size := by
    unfold fram_ring_slot_offset
    exact Nat.mod_eq_of_lt (by omega)
  refine ⟨hfit, hoff, ?_⟩
  intro i len hil
  rw [hoff]
  unfold fram_pm_is_valid_range
  split_ifs with h0 h1
  · rfl
  · omega
  · rfl

/-- C37. Ring index invariant. After a successful `fram_ring_init` on a
partition `p`, and after every subsequent sequence of `fram_ring_append` and
`fram_ring_clear` calls, each made in any state of the partition manager and
the device and whether it succeeds or fails: the ring is still bound to `p`,
`head_slot < capacity`, `tail_slot < capacity`, `count ≤ capacity` and
`tail_slot = (head_slot + capacity - count) mod capacity`; every slot index
`s < capacity` satisfies `(s + 1) * entry_size ≤ p.size`, its offset is
`s * entry_size` without 32-bit wrap, and every access of `len` bytes at byte
`i` of the slot with `i + len ≤ entry_size` passes the partition range check. -/
theorem ring_index_invariant (K : Kconfig) (ring0 ring1 : fram_ring_t) (pm pm1 : fram_pm_t)
    (p : fram_partition_t) (cfg : fram_ring_config_t)
    (hK : K.FRAM_RING_MAX_PAYLOAD + RING_HEADER_SIZE + 1 < U32) (hsize : p.size < U32)
    (hfind : fram_pm_find pm cfg.partition_name = some p)
    (hinit : fram_ring_init K ring0 pm cfg = (ESP_OK, ring1, pm1))
    (steps : List (fram_pm_t × ring_op)) :
    (ring_run_ops ring1 steps).part = some p ∧
    (ring_run_ops ring1 steps).head_slot < (ring_run_ops ring1 steps).capacity ∧
    (ring_run_ops ring1 steps).tail_slot < (ring_run_ops ring1 steps).capacity ∧
    (ring_run_ops ring1 steps).count ≤ (ring_run_ops ring1 steps).capacity ∧
    (ring_run_ops ring1 steps).tail_slot
      = ((ring_run_ops ring1 steps).head_slot + (ring_run_ops ring1 steps).capacity
          - (ring_run_ops ring1 steps).count) % (ring_run_ops ring1 steps).capacity ∧
    ∀ s, s < (ring_run_ops ring1 steps).capacity →
      (s + 1) * (ring_run_ops ring1 steps).entry_size ≤ p.size ∧
      fram_ring_slot_offset (ring_run_ops ring1 steps) s
        = s * (ring_run_ops ring1 steps).entry_size ∧
      ∀ i len, i + len ≤ (ring_run_ops ring1 steps).entry_size →
        fram_pm_is_valid_range p (fram_ring_slot_offset (ring_run_ops ring1 steps) s + i) len
          = true := by
  have h1 := ring_init_index_inv K ring0 ring1 pm pm1 p cfg hK hsize hfind hinit
  have h2 := ring_run_ops_inv p steps ring1 h1
  exact ⟨h2.part, h2.head, h2.tail, h2.count, h2.tail_eq,
    fun s hs => ring_inv_slot_range _ p h2 s hs⟩

/-- C37 on the ring of the tests (partition `"ring"`, 4096 bytes, capacity 99)
after `fram_ring_init`, an append of one byte and a clear. -/
theorem ring_index_invariant_witness :
    fram_pm_find example_pm example_ring_cfg.partition_name = some example_ring_part ∧
    (fram_ring_init example_K example_ring0 example_pm example_ring_cfg).1 = ESP_OK ∧
    (ring_run_ops (fram_ring_init example_K example_ring0 example_pm example_ring_cfg).2.1
      [(example_pm, ring_op.append [1] 5), (example_pm, ring_op.clear)]).head_slot
      < (ring_run_ops (fram_ring_init example_K example_ring0 example_pm example_ring_cfg).2.1
      [(example_pm, ring_op.append [1] 5), (example_pm, ring_op.clear)]).capacity :=
  ⟨example_ring_find, by rw [example_ring_init_ok],
   (ring_index_invariant example_K example_ring0 _ example_pm _ example_ring_part
      example_ring_cfg (by decide) (by decide) example_ring_find example_ring_init_ok
      [(example_pm, ring_op.append [1] 5), (example_pm, ring_op.clear)]).2.1⟩

/-! ## Recovery of the versioned slots on an arbitrary partition content -/

/-- The slot check only looks at the geometry fields of the slot store. -/
theorem vslot_slot_check_congr (r1 r2 : fram_vslot_t) (p : fram_partition_t)
    (pmem : Nat → Nat) (slot : Nat) (h2 : r1.slot_size = r2.slot_size)
    (h3 : r1.max_payload = r2.max_payload) (h4 : r1.magic = r2.magic) :
    vslot_slot_check r1 p pmem slot = vslot_slot_check r2 p pmem slot := by
  unfold vslot_slot_check fram_vslot_commit_offset fram_vslot_slot_offset
  simp only [h2, h3, h4]

theorem vslot_slot_version_congr (r1 r2 : fram_vslot_t) (p : fram_partition_t)
    (pmem : Nat → Nat) (slot : Nat) (h2 : r1.slot_size = r2.slot_size)
    (h3 : r1.max_payload = r2.max_payload) (h4 : r1.magic = r2.magic) :
    vslot_slot_version r1 p pmem slot = vslot_slot_version r2 p pmem slot := by
  unfold vslot_slot_version
  rw [vslot_slot_check_congr r1 r2 p pmem slot h2 h3 h4]

/-- The slot check either accepts the slot with a header or refuses it with an
error code and no header. -/
theorem vslot_slot_check_cases (vs : fram_vslot_t) (p : fram_partition_t) (pmem : Nat → Nat)
    (slot : Nat) :
    (∃ hdr, vslot_slot_check vs p pmem slot = (ESP_OK, some hdr)) ∨
    (∃ err, err ≠ ESP_OK ∧ vslot_slot_check vs p pmem slot = (err, none)) := by
  unfold vslot_slot_check
  simp only
  split_ifs <;>
    first
    | exact Or.inl ⟨_, rfl⟩
    | exact Or.inr ⟨ESP_ERR_NOT_FOUND, by decide, rfl⟩
    | exact Or.inr ⟨ESP_ERR_INVALID_SIZE, by decide, rfl⟩
    | exact Or.inr ⟨ESP_ERR_INVALID_CRC, by decide, rfl⟩

/-- Slot validation on a working partition against the versions
`vslot_slot_version` reads off the partition bytes. -/
theorem vslot_validate_version (vs : fram_vslot_t) (p : fram_partition_t) (pm : fram_pm_t)
    (pmem : Nat → Nat) (slot : Nat) (hp : vs.part = some p) (h : PmOK pm p pmem) :
    ∃ pm1, PmOK pm1 p pmem ∧
      ((∃ hdr, vslot_slot_version vs p pmem slot = some hdr.version ∧
          fram_vslot_validate_slot vs pm slot = (ESP_OK, some hdr, pm1)) ∨
       (∃ err, err ≠ ESP_OK ∧ vslot_slot_version vs p pmem slot = none ∧
          fram_vslot_validate_slot vs pm slot = (err, none, pm1))) := by
  obtain ⟨pm1, hok, hv⟩ := vslot_validate_check vs p pm pmem slot hp h
  refine ⟨pm1, hok, ?_⟩
  rcases vslot_slot_check_cases vs p pmem slot with ⟨hdr, hc⟩ | ⟨err, he, hc⟩
  · refine Or.inl ⟨hdr, ?_, ?_⟩
    · unfold vslot_slot_version
      rw [hc]
    · rw [hv, hc]
  · refine Or.inr ⟨err, he, ?_, ?_⟩
    · unfold vslot_slot_version
      rw [hc]
      cases err <;> first | exact absurd rfl he | rfl
    · rw [hv, hc]

/-- The recovery loop on a working partition computes the scan of the versions
of the slots. -/
theorem vslot_scan_check_eq (vs : fram_vslot_t) (p : fram_partition_t) (pmem : Nat → Nat)
    (hp : vs.part = some p) :
    ∀ (slots : List Nat) (st : vslot_scan_t) (pm : fram_pm_t), PmOK pm p pmem →
      ∃ pm1, fram_vslot_init_scan vs slots st pm
          = (vslot_scan_view (vslot_slot_version vs p pmem) slots st, pm1) ∧
        PmOK pm1 p pmem := by
  intro slots
  induction slots with
  | nil =>
    intro st pm h
    exact ⟨pm, rfl, h⟩
  | cons slot rest ih =>
    intro st pm h
    obtain ⟨pm1, hok, hcase⟩ := vslot_validate_version vs p pm pmem slot hp h
    rcases hcase with ⟨hdr, hv, hval⟩ | ⟨err, he, hv, hval⟩
    · simp only [fram_vslot_init_scan, vslot_scan_view, hval, hv]
      split_ifs
      · exact ih _ pm1 hok
      · exact ih _ pm1 hok
    · simp only [fram_vslot_init_scan, vslot_scan_view, hval, hv]
      cases err <;> first | exact absurd rfl he | exact ih _ pm1 hok

/-- The scan of `fram_vslot_init` over the slots `a, a+1, ..`: it keeps the
highest version seen and the lowest slot that carries it. -/
theorem vslot_scan_view_least (V : Nat → Option Nat) :
    ∀ (n a : Nat) (st : vslot_scan_t),
      (st.found = true → st.best_slot < a ∧ V st.best_slot = some st.best_version ∧
        ∀ s, s < a → ∀ q, V s = some q →
          q ≤ st.best_version ∧ (s < st.best_slot → q < st.best_version)) →
      (st.found = false → ∀ s, s < a → V s = none) →
      ((vslot_scan_view V (List.range' a n) st).found = true →
        (vslot_scan_view V (List.range' a n) st).best_slot < a + n ∧
        V (vslot_scan_view V (List.range' a n) st).best_slot
          = some (vslot_scan_view V (List.range' a n) st).best_version ∧
        ∀ s, s < a + n → ∀ q, V s = some q →
          q ≤ (vslot_scan_view V (List.range' a n) st).best_version ∧
          (s < (vslot_scan_view V (List.range' a n) st).best_slot →
            q < (vslot_scan_view V (List.range' a n) st).best_version)) ∧
      ((vslot_scan_view V (List.range' a n) st).found = false → ∀ s, s < a + n → V s = none) := by
  intro n
  induction n with
  | zero =>
    intro a st h1 h2
    exact ⟨h1, h2⟩
  | succ n ih =>
    intro a st h1 h2
    have hl : List.range' a (n + 1) = a :: List.range' (a + 1) n := rfl
    have ha : a + (n + 1) = a + 1 + n := by omega
    rw [hl, ha]
    cases hv : V a with
    | none =>
      have e : vslot_scan_view V (a :: List.range' (a + 1) n) st
          = vslot_scan_view V (List.range' (a + 1) n) st := by
        simp only [vslot_scan_view, hv]
      rw [e]
      refine ih (a + 1) st (fun hf => ?_) (fun hf s hs => ?_)
      · obtain ⟨b1, b2, b3⟩ := h1 hf
        refine ⟨by omega, b2, fun s hs q hq => ?_⟩
        by_cases c : s = a
        · rw [c, hv] at hq
          exact Option.noConfusion hq
        · exact b3 s (by omega) q hq
      · by_cases c : s = a
        · rw [c]; exact hv
        · exact h2 hf s (by omega)
    | some q =>
      by_cases hu : (!st.found || decide (q > st.best_version)) = true
      · have e : vslot_scan_view V (a :: List.range' (a + 1) n) st
            = vslot_scan_view V (List.range' (a + 1) n)
                { best_version := q, best_slot := a, found := true } := by
          simp only [vslot_scan_view, hv, hu, if_true]
        rw [e]
        refine ih (a + 1) _ (fun _ => ⟨Nat.lt_succ_self a, hv, fun s hs q1 hq1 => ?_⟩)
          (fun hf => Bool.noConfusion hf)
        by_cases c : s = a
        · rw [c, hv] at hq1
          have := Option.some.inj hq1
          exact ⟨by show q1 ≤ q; omega, fun hlt => absurd hlt (by show ¬ s < a; omega)⟩
        · cases hf : st.found with
          | false =>
            have := h2 hf s (by omega)
            rw [this] at hq1
            exact Option.noConfusion hq1
          | true =>
            rw [hf] at hu
            have hgt : q > st.best_version := by simpa using hu
            obtain ⟨_, _, b3⟩ := h1 hf
            have := (b3 s (by omega) q1 hq1).1
            exact ⟨by show q1 ≤ q; omega, fun _ => by show q1 < q; omega⟩
      · have e : vslot_scan_view V (a :: List.range' (a + 1) n) st
            = vslot_scan_view V (List.range' (a + 1) n) st := by
          simp only [vslot_scan_view, hv, hu, Bool.false_eq_true, if_false]
        rw [e]
        have hf : st.found = true := by
          cases hfd : st.found with
          | true => rfl
          | false => rw [hfd] at hu; exact absurd rfl hu
        have hle : q ≤ st.best_version := by
          rw [hf] at hu
          have : ¬ q > st.best_version := by simpa using hu
          omega
        obtain ⟨b1, b2, b3⟩ := h1 hf
        refine ih (a + 1) st (fun _ => ⟨by omega, b2, fun s hs q1 hq1 => ?_⟩)
          (fun hf2 => by rw [hf] at hf2; exact Bool.noConfusion hf2)
        by_cases c : s = a
        · rw [c, hv] at hq1
          have := Option.some.inj hq1
          exact ⟨by omega, fun hlt => by omega⟩
        · exact b3 s (by omega) q1 hq1

/-- `fram_vslot_init` on a working partition of any content: the result is
the recovery computed from the versions of the slots. -/
theorem vslot_init_check (K : Kconfig) (vs0 : fram_vslot_t) (pm : fram_pm_t)
    (p : fram_partition_t) (pmem : Nat → Nat) (cfg : fram_vslot_config_t)
    (hfind : fram_pm_find pm cfg.partition_name = some p) (h : PmOK pm p pmem)
    (hsc : 2 ≤ cfg.slot_count) (hsc3 : cfg.slot_count ≤ 3)
    (hmp : 0 < cfg.max_payload) (hle : cfg.max_payload ≤ K.FRAM_VSLOT_MAX_PAYLOAD)
    (hK : K.FRAM_VSLOT_MAX_PAYLOAD + VSLOT_HEADER_SIZE + 1 < U32) (hmagic : cfg.magic < U32)
    (hcap : cfg.slot_count * (VSLOT_HEADER_SIZE + cfg.max_payload + 1) ≤ p.size) :
    ∃ pm1, fram_vslot_init K vs0 pm cfg
        = (ESP_OK, vslot_recovered p cfg (vslot_slot_version (vslot_empty p cfg) p pmem), pm1) ∧
      PmOK pm1 p pmem := by
  obtain ⟨g, hes⟩ := vslot_empty_geom K p cfg hsc hle hK hmagic hcap
  have hsz := (vslot_slot_offset_eq _ p pm pmem g h 0 g.slot_count_pos).2.2.2.2
  have hes2 : (VSLOT_HEADER_SIZE + cfg.max_payload + 1) % U32
      = VSLOT_HEADER_SIZE + cfg.max_payload + 1 := Nat.mod_eq_of_lt (by omega)
  have hsize : ¬ p.size < (((VSLOT_HEADER_SIZE + cfg.max_payload + 1) % U32)
      * cfg.slot_count) % U32 := by
    rw [hes2, Nat.mul_comm, Nat.mod_eq_of_lt (by omega)]
    omega
  obtain ⟨R, hR⟩ : ∃ R : fram_vslot_t, R =
      { part := some p, slot_count := cfg.slot_count, max_payload := cfg.max_payload,
        slot_size := (VSLOT_HEADER_SIZE + cfg.max_payload + 1) % U32, magic := cfg.magic,
        active_slot := 0, active_version := 0, has_data := false,
        mutex := SemaphoreHandle_t.free } := ⟨_, rfl⟩
  have hRp : R.part = some p := by rw [hR]
  have hV : vslot_slot_version R p pmem = vslot_slot_version (vslot_empty p cfg) p pmem := by
    funext s
    rw [hR]
    exact vslot_slot_version_congr _ _ p pmem s rfl rfl rfl
  obtain ⟨pm1, hs, hok1⟩ := vslot_scan_check_eq R p pmem hRp (List.range cfg.slot_count)
    { best_version := 0, best_slot := 0, found := false } pm h
  rw [hV, hR] at hs
  refine ⟨pm1, ?_, hok1⟩
  obtain ⟨V, hVd⟩ : ∃ V, V = vslot_slot_version (vslot_empty p cfg) p pmem := ⟨_, rfl⟩
  rw [← hVd] at hs ⊢
  unfold fram_vslot_init
  simp only [hfind]
  rw [if_neg (by omega), if_neg (by omega), if_neg hsize]
  simp only [hs]
  by_cases hf : (vslot_scan_view V (List.range cfg.slot_count)
      { best_version := 0, best_slot := 0, found := false }).found = true
  · simp only [hf, if_true, vslot_recovered, vslot_empty]
  · simp only [hf, Bool.false_eq_true, if_false, vslot_recovered, vslot_empty]

/-- The slots that `vslot_slot_check` accepts. -/
theorem vslot_slot_check_accept (vs : fram_vslot_t) (p : fram_partition_t) (pmem : Nat → Nat)
    (slot : Nat) (H : fram_vslot_header_t)
    (hH : H = fram_vslot_header_of_bytes
      (mem_read pmem (fram_vslot_slot_offset vs slot) VSLOT_HEADER_SIZE)) :
    (vslot_slot_check vs p pmem slot = (ESP_OK, some H) ↔
      (fram_vslot_commit_offset vs slot + 1 ≤ p.size ∧
       pmem (fram_vslot_commit_offset vs slot) = FRAM_VSLOT_COMMIT ∧
       fram_vslot_slot_offset vs slot + VSLOT_HEADER_SIZE ≤ p.size ∧
       H.magic = vs.magic ∧ H.len ≤ vs.max_payload ∧
       (H.len > 0 →
         (fram_vslot_slot_offset vs slot + VSLOT_HEADER_SIZE) % U32 + H.len ≤ p.size) ∧
       (if H.len > 0 then
          fram_crc32_le (fram_crc32_le 0 H.head_bytes)
            (mem_read pmem ((fram_vslot_slot_offset vs slot + VSLOT_HEADER_SIZE) % U32) H.len)
        else fram_crc32_le 0 H.head_bytes) = H.crc32)) ∧
    (vslot_slot_check vs p pmem slot ≠ (ESP_OK, some H) →
      (vslot_slot_check vs p pmem slot).1 ≠ ESP_OK ∧
      (vslot_slot_check vs p pmem slot).2 = none) := by
  unfold vslot_slot_check
  simp only [← hH]
  by_cases c1 : ¬ fram_vslot_commit_offset vs slot + 1 ≤ p.size ∨
      pmem (fram_vslot_commit_offset vs slot) ≠ FRAM_VSLOT_COMMIT
  · rw [if_pos c1]
    refine ⟨⟨fun h => absurd (Prod.mk.inj h).1 (by decide), fun ⟨a1, a2, _⟩ => ?_⟩,
      fun _ => ⟨by decide, rfl⟩⟩
    rcases c1 with c | c
    · exact absurd a1 c
    · exact absurd a2 c
  rw [if_neg c1]
  by_cases c2 : ¬ fram_vslot_slot_offset vs slot + VSLOT_HEADER_SIZE ≤ p.size
  · rw [if_pos c2]
    exact ⟨⟨fun h => absurd (Prod.mk.inj h).1 (by decide),
      fun ⟨_, _, a3, _⟩ => absurd a3 c2⟩, fun _ => ⟨by decide, rfl⟩⟩
  rw [if_neg c2]
  by_cases c3 : H.magic ≠ vs.magic
  · rw [if_pos c3]
    exact ⟨⟨fun h => absurd (Prod.mk.inj h).1 (by decide),
      fun ⟨_, _, _, a4, _⟩ => absurd a4 c3⟩, fun _ => ⟨by decide, rfl⟩⟩
  rw [if_neg c3]
  by_cases c4 : H.len > vs.max_payload
  · rw [if_pos c4]
    exact ⟨⟨fun h => absurd (Prod.mk.inj h).1 (by decide),
      fun ⟨_, _, _, _, a5, _⟩ => absurd a5 (by omega)⟩, fun _ => ⟨by decide, rfl⟩⟩
  rw [if_neg c4]
  by_cases c5 : H.len > 0 ∧
      ¬ (fram_vslot_slot_offset vs slot + VSLOT_HEADER_SIZE) % U32 + H.len ≤ p.size
  · rw [if_pos c5]
    exact ⟨⟨fun h => absurd (Prod.mk.inj h).1 (by decide),
      fun ⟨_, _, _, _, _, a6, _⟩ => absurd (a6 c5.1) c5.2⟩, fun _ => ⟨by decide, rfl⟩⟩
  rw [if_neg c5]
  by_cases c6 : (if H.len > 0 then
          fram_crc32_le (fram_crc32_le 0 H.head_bytes)
            (mem_read pmem ((fram_vslot_slot_offset vs slot + VSLOT_HEADER_SIZE) % U32) H.len)
        else fram_crc32_le 0 H.head_bytes) ≠ H.crc32
  · rw [if_pos c6]
    exact ⟨⟨fun h => absurd (Prod.mk.inj h).1 (by decide),
      fun ⟨_, _, _, _, _, _, a7⟩ => absurd a7 c6⟩, fun _ => ⟨by decide, rfl⟩⟩
  rw [if_neg c6]
  refine ⟨⟨fun _ => ⟨?_, ?_, ?_, ?_, by omega, ?_, ?_⟩, fun _ => rfl⟩,
    fun hne => absurd rfl hne⟩
  · by_contra c
    exact c1 (Or.inl c)
  · by_contra c
    exact c1 (Or.inr c)
  · by_contra c
    exact c2 c
  · by_contra c
    exact c3 c
  · intro hl
    by_contra c
    exact c5 ⟨hl, c⟩
  · by_contra c
    exact c6 c

/-- The CRC that slot validation computes in two steps is the CRC over the
header bytes followed by the payload bytes. -/
theorem vslot_crc_two_steps (head payload : List Nat) (len : Nat)
    (hl : len = 0 → payload = []) :
    (if len > 0 then fram_crc32_le (fram_crc32_le 0 head) payload
      else fram_crc32_le 0 head) = fram_crc32_le 0 (head ++ payload) := by
  by_cases h : len > 0
  · rw [if_pos h, fram_crc32_le_append]
  · rw [if_neg h, hl (by omega), List.append_nil]

/-- On a slot store whose slots fit in the partition, the slot check accepts
exactly the slots that validate in the words of the specification. -/
theorem vslot_check_spec (vs : fram_vslot_t) (p : fram_partition_t) (pm : fram_pm_t)
    (pmem : Nat → Nat) (g : VslotGeom vs p) (h : PmOK pm p pmem) (slot : Nat)
    (hs : slot < vs.slot_count) :
    (spec_vslot_valid vs pmem slot = true ↔
      vslot_slot_check vs p pmem slot = (ESP_OK, some (spec_vslot_header vs pmem slot))) ∧
    (spec_vslot_valid vs pmem slot ≠ true →
      (vslot_slot_check vs p pmem slot).1 ≠ ESP_OK ∧
      (vslot_slot_check vs p pmem slot).2 = none) := by
  obtain ⟨e1, e2, e3, hfit, hsz⟩ := vslot_slot_offset_eq vs p pm pmem g h slot hs
  have hss := g.slot_size
  have h24 : VSLOT_HEADER_SIZE = 24 := rfl
  have hmul : (slot + 1) * vs.slot_size = slot * vs.slot_size + vs.slot_size :=
    Nat.succ_mul _ _
  have hA5 : FRAM_VSLOT_COMMIT = 0xA5 := rfl
  have hH : spec_vslot_header vs pmem slot = fram_vslot_header_of_bytes
      (mem_read pmem (fram_vslot_slot_offset vs slot) VSLOT_HEADER_SIZE) := by
    rw [e1]
    rfl
  obtain ⟨a1, a2⟩ := vslot_slot_check_accept vs p pmem slot _ hH
  rw [e3, e2, e1] at a1
  have hcrc := vslot_crc_two_steps (spec_vslot_header vs pmem slot).head_bytes
    (mem_read pmem (slot * vs.slot_size + VSLOT_HEADER_SIZE) (spec_vslot_header vs pmem slot).len)
    (spec_vslot_header vs pmem slot).len (fun h0 => by rw [h0]; rfl)
  rw [hcrc] at a1
  have hiff : spec_vslot_valid vs pmem slot = true ↔
      vslot_slot_check vs p pmem slot = (ESP_OK, some (spec_vslot_header vs pmem slot)) := by
    rw [a1]
    unfold spec_vslot_valid
    rw [decide_eq_true_iff, hA5]
    constructor
    · rintro ⟨b1, b2, b3, b4⟩
      exact ⟨by omega, b1, by omega, b2, b3, fun _ => by omega, b4⟩
    · rintro ⟨_, b1, _, b2, b3, _, b4⟩
      exact ⟨b1, b2, b3, b4⟩
  exact ⟨hiff, fun hne => a2 (fun hc => hne (hiff.2 hc))⟩

/-- The version of a slot in the words of the specification. -/
theorem vslot_version_spec (vs : fram_vslot_t) (p : fram_partition_t) (pm : fram_pm_t)
    (pmem : Nat → Nat) (g : VslotGeom vs p) (h : PmOK pm p pmem) (slot : Nat)
    (hs : slot < vs.slot_count) :
    vslot_slot_version vs p pmem slot
      = if spec_vslot_valid vs pmem slot = true
        then some (spec_vslot_header vs pmem slot).version else none := by
  obtain ⟨a1, a2⟩ := vslot_check_spec vs p pm pmem g h slot hs
  by_cases hv : spec_vslot_valid vs pmem slot = true
  · rw [if_pos hv]
    unfold vslot_slot_version
    rw [a1.1 hv]
  · rw [if_neg hv]
    obtain ⟨b1, b2⟩ := a2 hv
    unfold vslot_slot_version
    generalize vslot_slot_check vs p pmem slot = r at b1 b2
    obtain ⟨c, o⟩ := r
    have b3 : o = none := b2
    have b4 : c ≠ ESP_OK := b1
    rw [b3]
    cases c <;> first | exact absurd rfl b4 | rfl

/-- The fields of the object that recovery computes from a view of the slots. -/
theorem vslot_recovered_fields (p : fram_partition_t) (cfg : fram_vslot_config_t)
    (V : Nat → Option Nat) (s : vslot_scan_t)
    (hs : s = vslot_scan_view V (List.range cfg.slot_count)
      { best_version := 0, best_slot := 0, found := false }) :
    (vslot_recovered p cfg V).part = some p ∧
    (vslot_recovered p cfg V).slot_count = cfg.slot_count ∧
    (vslot_recovered p cfg V).max_payload = cfg.max_payload ∧
    (vslot_recovered p cfg V).slot_size = (VSLOT_HEADER_SIZE + cfg.max_payload + 1) % U32 ∧
    (vslot_recovered p cfg V).magic = cfg.magic ∧
    (vslot_recovered p cfg V).mutex = SemaphoreHandle_t.free ∧
    (vslot_recovered p cfg V).has_data = s.found ∧
    (s.found = true → (vslot_recovered p cfg V).active_slot = s.best_slot ∧
      (vslot_recovered p cfg V).active_version = s.best_version) ∧
    (s.found = false → (vslot_recovered p cfg V).active_slot = 0 ∧
      (vslot_recovered p cfg V).active_version = 0) := by
  unfold vslot_recovered
  simp only [← hs]
  cases hf : s.found with
  | true =>
    rw [if_pos rfl]
    exact ⟨rfl, rfl, rfl, rfl, rfl, rfl, rfl, fun _ => ⟨rfl, rfl⟩,
      fun hx => Bool.noConfusion hx⟩
  | false =>
    rw [if_neg Bool.false_ne_true]
    exact ⟨rfl, rfl, rfl, rfl, rfl, rfl, rfl, fun hx => Bool.noConfusion hx,
      fun _ => ⟨rfl, rfl⟩⟩

/-- The validity of a slot in the words of the specification only looks at the
geometry fields of the slot store. -/
theorem spec_vslot_valid_congr (r1 r2 : fram_vslot_t) (pmem : Nat → Nat) (slot : Nat)
    (h2 : r1.slot_size = r2.slot_size) (h3 : r1.max_payload = r2.max_payload)
    (h4 : r1.magic = r2.magic) :
    spec_vslot_valid r1 pmem slot = spec_vslot_valid r2 pmem slot ∧
    spec_vslot_header r1 pmem slot = spec_vslot_header r2 pmem slot := by
  unfold spec_vslot_valid spec_vslot_header
  simp only [h2, h3, h4]
  exact ⟨trivial, trivial⟩

/-- C33. VSlot init selection. For every content of a working partition on
which `fram_vslot_init` returns `ESP_OK`: a slot below `slot_count` passes
`fram_vslot_validate_slot` iff it validates in the words of the specification
(commit byte `0xA5`, magic matches, `len ≤ max_payload`, CRC over header and
payload matches); `has_data` is true iff at least one of the `slot_count`
slots validates; when true, the active slot validates and carries
`active_version`, no valid slot carries a greater version, and every valid
slot of lower index carries a smaller one; when false, `active_slot = 0` and
`active_version = 0`. -/
theorem vslot_init_selection (K : Kconfig) (vs0 vs1 : fram_vslot_t) (pm pm1 : fram_pm_t)
    (p : fram_partition_t) (pmem : Nat → Nat) (cfg : fram_vslot_config_t)
    (hK : 3 * (K.FRAM_VSLOT_MAX_PAYLOAD + VSLOT_HEADER_SIZE + 1) < U32)
    (hmagic : cfg.magic < U32)
    (h : PmOK pm p pmem) (hfind : fram_pm_find pm cfg.partition_name = some p)
    (hinit : fram_vslot_init K vs0 pm cfg = (ESP_OK, vs1, pm1)) :
    vs1.slot_count = cfg.slot_count ∧
    (∀ (pm2 : fram_pm_t) (slot : Nat), PmOK pm2 p pmem → slot < vs1.slot_count →
      ((fram_vslot_validate_slot vs1 pm2 slot).1 = ESP_OK ↔
        spec_vslot_valid vs1 pmem slot = true) ∧
      (spec_vslot_valid vs1 pmem slot = true →
        (fram_vslot_validate_slot vs1 pm2 slot).2.1
          = some (spec_vslot_header vs1 pmem slot))) ∧
    (vs1.has_data = true ↔ ∃ s, s < vs1.slot_count ∧ spec_vslot_valid vs1 pmem s = true) ∧
    (vs1.has_data = true →
      vs1.active_slot < vs1.slot_count ∧
      spec_vslot_valid vs1 pmem vs1.active_slot = true ∧
      (spec_vslot_header vs1 pmem vs1.active_slot).version = vs1.active_version ∧
      ∀ s, s < vs1.slot_count → spec_vslot_valid vs1 pmem s = true →
        (spec_vslot_header vs1 pmem s).version ≤ vs1.active_version ∧
        (s < vs1.active_slot → (spec_vslot_header vs1 pmem s).version < vs1.active_version)) ∧
    (vs1.has_data = false → vs1.active_slot = 0 ∧ vs1.active_version = 0) := by
  obtain ⟨hsc, hsc3, hmp, hle, hcap⟩ := vslot_init_ok_cfg K vs0 vs1 pm pm1 p cfg hfind hK hinit
  obtain ⟨g, hes⟩ := vslot_empty_geom K p cfg hsc hle (by omega) hmagic hcap
  obtain ⟨pm1b, hi, _⟩ := vslot_init_check K vs0 pm p pmem cfg hfind h hsc hsc3 hmp hle
    (by omega) hmagic hcap
  rw [hinit] at hi
  have hvs : vs1 = vslot_recovered p cfg (vslot_slot_version (vslot_empty p cfg) p pmem) :=
    (Prod.mk.inj (Prod.mk.inj hi).2).1
  obtain ⟨V, hVd⟩ : ∃ V, V = vslot_slot_version (vslot_empty p cfg) p pmem := ⟨_, rfl⟩
  rw [← hVd] at hvs
  obtain ⟨sc, hsd⟩ : ∃ sc, sc = vslot_scan_view V (List.range cfg.slot_count)
      { best_version := 0, best_slot := 0, found := false } := ⟨_, rfl⟩
  obtain ⟨f1, f2, f3, f4, f5, f6, f7, f8, f9⟩ := vslot_recovered_fields p cfg V sc hsd
  rw [← hvs] at f1 f2 f3 f4 f5 f6 f7 f8 f9
  have g1 : VslotGeom vs1 p :=
    ⟨f1, by rw [f4, f3]; exact hes, by rw [f2]; omega, by rw [f2, f4]; exact g.fits,
      by rw [f5]; exact hmagic, f6⟩
  have hcg : ∀ s, spec_vslot_valid (vslot_empty p cfg) pmem s = spec_vslot_valid vs1 pmem s ∧
      spec_vslot_header (vslot_empty p cfg) pmem s = spec_vslot_header vs1 pmem s :=
    fun s => spec_vslot_valid_congr _ _ pmem s f4.symm f3.symm f5.symm
  have hV : ∀ s, s < cfg.slot_count →
      V s = if spec_vslot_valid vs1 pmem s = true
        then some (spec_vslot_header vs1 pmem s).version else none := by
    intro s hs
    rw [hVd, vslot_version_spec _ p pm pmem g h s hs, (hcg s).1, (hcg s).2]
  have hleast := vslot_scan_view_least V cfg.slot_count 0
    { best_version := 0, best_slot := 0, found := false }
    (fun hx => Bool.noConfusion hx) (fun _ s hs => absurd hs (Nat.not_lt_zero s))
  rw [← List.range_eq_range', ← hsd, Nat.zero_add] at hleast
  obtain ⟨l1, l2⟩ := hleast
  have hvalid_of : ∀ s q, s < cfg.slot_count → V s = some q →
      spec_vslot_valid vs1 pmem s = true ∧ (spec_vslot_header vs1 pmem s).version = q := by
    intro s q hs hq
    rw [hV s hs] at hq
    by_cases hv : spec_vslot_valid vs1 pmem s = true
    · rw [if_pos hv] at hq
      exact ⟨hv, Option.some.inj hq⟩
    · rw [if_neg hv] at hq
      exact Option.noConfusion hq
  have hV_of : ∀ s, s < cfg.slot_count → spec_vslot_valid vs1 pmem s = true →
      V s = some (spec_vslot_header vs1 pmem s).version := by
    intro s hs hv
    rw [hV s hs, if_pos hv]
  refine ⟨f2, ?_, ?_, ?_, ?_⟩
  · intro pm2 slot h2 hs
    obtain ⟨pm3, _, hval⟩ := vslot_validate_check vs1 p pm2 pmem slot f1 h2
    obtain ⟨a1, a2⟩ := vslot_check_spec vs1 p pm pmem g1 h slot hs
    rw [hval]
    refine ⟨⟨fun hok => ?_, fun hv => ?_⟩, fun hv => ?_⟩
    · by_contra hv
      exact (a2 hv).1 hok
    · show (vslot_slot_check vs1 p pmem slot).1 = ESP_OK
      rw [a1.1 hv]
    · show (vslot_slot_check vs1 p pmem slot).2 = some (spec_vslot_header vs1 pmem slot)
      rw [a1.1 hv]
  · rw [f7, f2]
    constructor
    · intro hf
      obtain ⟨b1, b2, _⟩ := l1 hf
      exact ⟨sc.best_slot, b1, (hvalid_of _ _ b1 b2).1⟩
    · rintro ⟨s, hs, hv⟩
      cases hf : sc.found with
      | true => rfl
      | false =>
        have := l2 hf s hs
        rw [hV_of s hs hv] at this
        exact Option.noConfusion this
  · intro hd
    rw [f7] at hd
    obtain ⟨b1, b2, b3⟩ := l1 hd
    obtain ⟨c1, c2⟩ := f8 hd
    rw [c1, c2, f2]
    obtain ⟨d1, d2⟩ := hvalid_of _ _ b1 b2
    refine ⟨b1, d1, d2, fun s hs hv => ?_⟩
    exact b3 s hs _ (hV_of s hs hv)
  · intro hd
    rw [f7] at hd
    exact f9 hd

/-- C33 on the erased partition `"vslot"` of the tests with two slots:
`fram_vslot_init` returns `ESP_OK`, no slot validates, so `has_data` is false
and `active_slot = active_version = 0`. -/
theorem vslot_init_selection_witness :
    PmOK example_pm example_vslot_part (fun _ => 0xFF) ∧
    (fram_vslot_init example_K example_vslot0 example_pm example_vslot_cfg).1 = ESP_OK ∧
    (fram_vslot_init example_K example_vslot0 example_pm example_vslot_cfg).2.1.slot_count
      = 2 ∧
    ((fram_vslot_init example_K example_vslot0 example_pm example_vslot_cfg).2.1.has_data
        = false →
      (fram_vslot_init example_K example_vslot0 example_pm example_vslot_cfg).2.1.active_slot
        = 0 ∧
      (fram_vslot_init example_K example_vslot0 example_pm example_vslot_cfg).2.1.active_version
        = 0) :=
  ⟨example_pm_vslot_ok,
   by rw [(example_vslot_init_ok example_vslot_cfg rfl rfl (by decide) (by decide)
      (by decide)).2],
   (vslot_init_selection example_K example_vslot0 _ example_pm _ example_vslot_part
      (fun _ => 0xFF) example_vslot_cfg (by decide) (by decide) example_pm_vslot_ok
      (example_vslot_init_ok example_vslot_cfg rfl rfl (by decide) (by decide) (by decide)).1
      (example_vslot_init_ok example_vslot_cfg rfl rfl (by decide) (by decide)
        (by decide)).2).1,
   (vslot_init_selection example_K example_vslot0 _ example_pm _ example_vslot_part
      (fun _ => 0xFF) example_vslot_cfg (by decide) (by decide) example_pm_vslot_ok
      (example_vslot_init_ok example_vslot_cfg rfl rfl (by decide) (by decide) (by decide)).1
      (example_vslot_init_ok example_vslot_cfg rfl rfl (by decide) (by decide)
        (by decide)).2).2.2.2.2⟩

/-- The target selection of `fram_superblock_write` in the words of the
specification, with the sequence number computed in 32 bits. -/
theorem superblock_select_spec (av bv : Bool) (a b : fram_superblock_t) :
    (fram_superblock_write_select av bv a b).1 = spec_superblock_target av bv a b ∧
    (av = false → bv = false → (fram_superblock_write_select av bv a b).2 = 1) ∧
    (av = true ∨ bv = true → (fram_superblock_write_select av bv a b).2
      = (spec_superblock_max_seq av bv a b + 1) % U32) := by
  unfold fram_superblock_write_select spec_superblock_target spec_superblock_max_seq
  cases av <;> cases bv
  · simp
  · simp
  · simp
  · by_cases h : a.seq ≤ b.seq
    · simp [h]
    · have h2 : b.seq ≤ a.seq := by omega
      simp [h, h2]

/-- The record that `fram_superblock_write` builds does not depend on the
`seq`, `commit`, `reserved` and `crc32` fields of the caller's buffer. -/
theorem superblock_temp_ignores (sb : fram_superblock_t) (q s c k : Nat) (r : List Nat) :
    fram_superblock_write_temp { sb with seq := s, commit := c, reserved := r, crc32 := k } q
      = fram_superblock_write_temp sb q := rfl

/-- The write does not depend on the `seq` field of the caller's buffer. -/
theorem superblock_write_ignores_seq (dev : fram_dev_t) (base : Nat) (sb : fram_superblock_t)
    (s : Nat) :
    fram_superblock_write dev base { sb with seq := s } = fram_superblock_write dev base sb :=
  rfl

/-- The two device writes of a superblock write change no byte outside the
target copy. -/
theorem superblock_media_frame (mem : Nat → Nat) (off : Nat) (temp : fram_superblock_t)
    (hl : temp.to_bytes.length = 472) (a : Nat)
    (ha : a < off ∨ off + SUPERBLOCK_SIZE ≤ a) :
    superblock_media_after mem off temp a = mem a := by
  have h472 : SUPERBLOCK_SIZE = 472 := rfl
  have h468 : SUPERBLOCK_COMMIT_OFFSET = 468 := rfl
  unfold superblock_media_after mem_write
  rw [if_neg (by simp only [List.length_singleton]; omega), if_neg (by rw [hl]; omega)]

/-- C32. Superblock write target and sequence, with the sequence number taken
modulo 2^32. On a working device with room for both copies, for every content
and every accepted superblock `sb`, with `A` and `B` the records stored in the
two copies: `fram_superblock_write` returns `ESP_OK` and writes its record to
the copy of index `T`, where `T` is copy A when neither copy is valid, when
only B is valid, or when both are valid and `A.seq ≤ B.seq`, and copy B
otherwise; the record stored there is the caller's with `commit = 0xA5`, zeroed
`reserved` bytes, its CRC, and the seq `Q`, where `Q` is 1 when neither copy is
valid and otherwise (the largest seq among valid copies + 1) mod 2^32, whatever
seq the caller's buffer holds; and no byte outside the target copy is
modified. -/
theorem superblock_write_target_seq (dev : fram_dev_t) (mem : Nat → Nat) (size base : Nat)
    (sb : fram_superblock_t) (T Q : Nat)
    (hd : DevOK dev mem size) (hr : base + 2 * SUPERBLOCK_SIZE ≤ size)
    (hm : sb.magic = FRAM_SUPERBLOCK_MAGIC) (hv : sb.version = FRAM_SUPERBLOCK_VERSION)
    (hs : sb.size_bytes = size) (hc : sb.count ≤ FRAM_PART_MAX)
    (hp : sb.parts.length = 448)
    (hT : T = spec_superblock_target
      (fram_superblock_valid (superblock_at mem base) size)
      (fram_superblock_valid (superblock_at mem (base + SUPERBLOCK_SIZE)) size)
      (superblock_at mem base) (superblock_at mem (base + SUPERBLOCK_SIZE)))
    (hQ : Q = if fram_superblock_valid (superblock_at mem base) size = false ∧
          fram_superblock_valid (superblock_at mem (base + SUPERBLOCK_SIZE)) size = false
        then 1
        else (spec_superblock_max_seq
          (fram_superblock_valid (superblock_at mem base) size)
          (fram_superblock_valid (superblock_at mem (base + SUPERBLOCK_SIZE)) size)
          (superblock_at mem base) (superblock_at mem (base + SUPERBLOCK_SIZE)) + 1) % U32) :
    (fram_superblock_write dev base sb).1 = ESP_OK ∧
    DevOK (fram_superblock_write dev base sb).2
      (superblock_media_after mem (base + SUPERBLOCK_SIZE * T)
        (fram_superblock_write_temp sb Q)) size ∧
    T ≤ 1 ∧
    superblock_at (fram_superblock_write dev base sb).2.hal.ctx.buffer
        (base + SUPERBLOCK_SIZE * T)
      = { sb with
          seq := Q
          crc32 := fram_superblock_crc { sb with seq := Q, commit := 0, reserved := [0, 0, 0] }
          commit := FRAM_SUPERBLOCK_COMMIT
          reserved := [0, 0, 0] } ∧
    (∀ a, a < base + SUPERBLOCK_SIZE * T ∨ base + SUPERBLOCK_SIZE * T + SUPERBLOCK_SIZE ≤ a →
      (fram_superblock_write dev base sb).2.hal.ctx.buffer a = mem a) ∧
    (∀ s, fram_superblock_write dev base { sb with seq := s }
      = fram_superblock_write dev base sb) := by
  obtain ⟨dev1, hw, hd1⟩ := superblock_write_both dev mem size base sb hd hr hm hv hs hc hp
  obtain ⟨s1, s2, s3⟩ := superblock_select_spec
    (fram_superblock_valid (superblock_at mem base) size)
    (fram_superblock_valid (superblock_at mem (base + SUPERBLOCK_SIZE)) size)
    (superblock_at mem base) (superblock_at mem (base + SUPERBLOCK_SIZE))
  have hsel2 : (fram_superblock_write_select
      (fram_superblock_valid (superblock_at mem base) size)
      (fram_superblock_valid (superblock_at mem (base + SUPERBLOCK_SIZE)) size)
      (superblock_at mem base) (superblock_at mem (base + SUPERBLOCK_SIZE))).2 = Q := by
    rw [hQ]
    by_cases hn : fram_superblock_valid (superblock_at mem base) size = false ∧
        fram_superblock_valid (superblock_at mem (base + SUPERBLOCK_SIZE)) size = false
    · rw [if_pos hn]
      exact s2 hn.1 hn.2
    · rw [if_neg hn]
      apply s3
      cases ha : fram_superblock_valid (superblock_at mem base) size with
      | true => exact Or.inl rfl
      | false =>
        cases hb : fram_superblock_valid (superblock_at mem (base + SUPERBLOCK_SIZE)) size with
        | true => exact Or.inr rfl
        | false => exact absurd ⟨ha, hb⟩ hn
  rw [s1, ← hT, hsel2] at hd1
  have hT1 : T ≤ 1 := by
    rw [hT, ← s1]
    exact select_fst_le _ _ _ _
  have hQlt : Q < U32 := by
    rw [← hsel2]
    exact select_snd_lt _ _ _ _
  obtain ⟨hrec, _⟩ := superblock_after_write mem size base sb T Q hT1 hm hv hs hd.size_lt hc hp
    hQlt
  rw [committed_record_eq] at hrec
  have hl := temp_to_bytes_length sb Q hp
  rw [hw]
  have hbuf : dev1.hal.ctx.buffer = superblock_media_after mem (base + SUPERBLOCK_SIZE * T)
      (fram_superblock_write_temp sb Q) := hd1.mem_eq
  refine ⟨rfl, hd1, hT1, ?_, ?_, fun s => (superblock_write_ignores_seq dev base sb s).trans hw⟩
  · show superblock_at dev1.hal.ctx.buffer (base + SUPERBLOCK_SIZE * T) = _
    rw [hbuf]
    exact hrec
  · intro a ha
    show dev1.hal.ctx.buffer a = mem a
    rw [hbuf]
    exact superblock_media_frame mem _ _ hl a ha

theorem erased_944_ok : DevOK (mock_dev (fun _ => 0xFF) 944) (fun _ => 0xFF) 944 :=
  ⟨rfl, rfl, rfl, rfl, by decide, rfl⟩

/-- C32 on an erased device of 944 bytes: neither copy is valid, the write
returns `ESP_OK` and stores the record in copy A with seq 1, though the
caller's buffer holds seq 0. -/
theorem superblock_write_target_seq_witness :
    DevOK (mock_dev (fun _ => 0xFF) 944) (fun _ => 0xFF) 944 ∧
    example_new_superblock.seq = 0 ∧
    (fram_superblock_write (mock_dev (fun _ => 0xFF) 944) 0 example_new_superblock).1
      = ESP_OK ∧
    (superblock_at
      (fram_superblock_write (mock_dev (fun _ => 0xFF) 944) 0
        example_new_superblock).2.hal.ctx.buffer (0 + SUPERBLOCK_SIZE * 0)).seq = 1 :=
  ⟨erased_944_ok, rfl,
   (superblock_write_target_seq (mock_dev (fun _ => 0xFF) 944) (fun _ => 0xFF) 944 0
      example_new_superblock 0 1 erased_944_ok (by decide) rfl rfl rfl (by decide)
      example_new_parts
      (by rw [erased_copy_invalid, erased_copy_invalid]; simp [spec_superblock_target])
      (by rw [erased_copy_invalid, erased_copy_invalid]; simp)).1,
   by
    rw [(superblock_write_target_seq (mock_dev (fun _ => 0xFF) 944) (fun _ => 0xFF) 944 0
      example_new_superblock 0 1 erased_944_ok (by decide) rfl rfl rfl (by decide)
      example_new_parts
      (by rw [erased_copy_invalid, erased_copy_invalid]; simp [spec_superblock_target])
      (by rw [erased_copy_invalid, erased_copy_invalid]; simp)).2.2.2.1]⟩

/-- Counterexample for C32: copy A of the example device is valid with seq
`2^32 - 1` and copy B is erased, so the largest seq among the valid copies is
`2^32 - 1`. The write of a new superblock returns `ESP_OK` and stores its
record, committed, in copy B with seq 0, not `2^32`. -/
theorem superblock_write_target_seq_counterexample :
    fram_superblock_valid (superblock_at example_wrap_dev.hal.ctx.buffer 0) 944 = true ∧
    (superblock_at example_wrap_dev.hal.ctx.buffer 0).seq = 4294967295 ∧
    fram_superblock_valid
      (superblock_at example_wrap_dev.hal.ctx.buffer (0 + SUPERBLOCK_SIZE)) 944 = false ∧
    (fram_superblock_write example_wrap_dev 0 example_new_superblock).1 = ESP_OK ∧
    (superblock_at (fram_superblock_write example_wrap_dev 0
      example_new_superblock).2.hal.ctx.buffer (0 + SUPERBLOCK_SIZE)).commit
        = FRAM_SUPERBLOCK_COMMIT ∧
    (superblock_at (fram_superblock_write example_wrap_dev 0
      example_new_superblock).2.hal.ctx.buffer (0 + SUPERBLOCK_SIZE)).seq = 0 ∧
    (superblock_at (fram_superblock_write example_wrap_dev 0
      example_new_superblock).2.hal.ctx.buffer (0 + SUPERBLOCK_SIZE)).seq
        ≠ (superblock_at example_wrap_dev.hal.ctx.buffer 0).seq + 1 := by
  have hbuf : example_wrap_dev.hal.ctx.buffer
      = mem_write (fun _ => 0xFF) 0 example_old_superblock.to_bytes := rfl
  have hA : fram_superblock_valid (superblock_at example_wrap_dev.hal.ctx.buffer 0) 944
      = true := by
    rw [hbuf, example_wrap_copy_a]
    exact example_old_valid
  have hAs : (superblock_at example_wrap_dev.hal.ctx.buffer 0).seq = 4294967295 := by
    rw [hbuf, example_wrap_copy_a]
    exact example_old_seq
  obtain ⟨mem1, hw, hd1, _, hB1⟩ := superblock_wrap_first_write example_wrap_dev _ 944 0
    example_new_superblock example_wrap_dev_ok (by decide) rfl rfl rfl (by decide)
    example_new_parts hA example_wrap_copy_b hAs
  have hm1 : (fram_superblock_write example_wrap_dev 0 example_new_superblock).2.hal.ctx.buffer
      = mem1 := hd1.mem_eq
  have hs0 : (superblock_at mem1 (0 + SUPERBLOCK_SIZE)).seq = 0 := by
    rw [hB1]
    exact committed_record_seq _ _
  refine ⟨hA, hAs, example_wrap_copy_b, hw, ?_, ?_, ?_⟩
  · rw [hm1, hB1]
  · rw [hm1]
    exact hs0
  · rw [hm1, hs0, hAs]
    decide

/-! ## What a device write can change -/

/-- A HAL write keeps the size and every byte outside the written range. -/
theorem fram_hal_mock_write_frame (hal : fram_hal_t) (addr : Nat) (data : List Nat) :
    (fram_hal_mock_write hal addr data).2.size_bytes = hal.size_bytes ∧
    ∀ a, a < addr ∨ addr + data.length ≤ a →
      (fram_hal_mock_write hal addr data).2.ctx.buffer a = hal.ctx.buffer a := by
  unfold fram_hal_mock_write
  simp only
  split_ifs
  · exact ⟨rfl, fun _ _ => rfl⟩
  · exact ⟨rfl, fun _ _ => rfl⟩
  · exact ⟨rfl, fun _ _ => rfl⟩
  · refine ⟨rfl, fun a ha => ?_⟩
    show mem_write hal.ctx.buffer addr data a = hal.ctx.buffer a
    unfold mem_write
    rw [if_neg (by omega)]

/-- A HAL read keeps the size and the media. -/
theorem fram_hal_mock_read_frame (hal : fram_hal_t) (addr len : Nat) :
    (fram_hal_mock_read hal addr len).2.2.size_bytes = hal.size_bytes ∧
    (fram_hal_mock_read hal addr len).2.2.ctx.buffer = hal.ctx.buffer := by
  unfold fram_hal_mock_read
  simp only
  split_ifs <;> exact ⟨rfl, rfl⟩

theorem dev_record_error_hal (d : fram_dev_t) : (fram_dev_record_error d).hal = d.hal := by
  unfold fram_dev_record_error
  simp only
  split_ifs <;> rfl

/-- The chunk loop of `fram_dev_write` keeps the size and every byte outside
the range of the data, whatever the device does. -/
theorem fram_dev_write_loop_frame (mt : Nat) :
    ∀ (fuel : Nat) (dev : fram_dev_t) (addr : Nat) (data : List Nat),
      addr + data.length < U32 →
      (fram_dev_write_loop fuel dev addr data mt).2.hal.size_bytes = dev.hal.size_bytes ∧
      ∀ a, a < addr ∨ addr + data.length ≤ a →
        (fram_dev_write_loop fuel dev addr data mt).2.hal.ctx.buffer a
          = dev.hal.ctx.buffer a := by
  intro fuel
  induction fuel with
  | zero =>
    intro dev addr data _
    unfold fram_dev_write_loop
    split_ifs <;> exact ⟨rfl, fun _ _ => rfl⟩
  | succ fuel ih =>
    intro dev addr data hU
    unfold fram_dev_write_loop
    simp only
    obtain ⟨c, hc⟩ : ∃ c, c = (if data.length > mt then mt else data.length) := ⟨_, rfl⟩
    rw [← hc]
    have hcl : c ≤ data.length := by
      rw [hc]
      split <;> omega
    have hlt : (data.take c).length = c := by
      rw [List.length_take]
      omega
    obtain ⟨f1, f2⟩ := fram_hal_mock_write_frame dev.hal addr (data.take c)
    rw [hlt] at f2
    split_ifs with h0 h1
    · exact ⟨rfl, fun _ _ => rfl⟩
    · rw [dev_record_error_hal]
      exact ⟨f1, fun a ha => f2 a (by omega)⟩
    · have hUc : (addr + c) % U32 = addr + c := Nat.mod_eq_of_lt (by omega)
      rw [hUc]
      obtain ⟨g1, g2⟩ := ih (fram_dev_record_success
        { dev with hal := (fram_hal_mock_write dev.hal addr (data.take c)).2,
                   write_count := (dev.write_count + 1) % U32 })
        (addr + c) (data.drop c) (by rw [List.length_drop]; omega)
      rw [List.length_drop] at g2
      refine ⟨g1.trans f1, fun a ha => ?_⟩
      rw [g2 a (by omega)]
      exact f2 a (by omega)

/-- The function `fram_dev_write` keeps the size and every byte outside
`[offset, offset + len)`, whatever the device does. -/
theorem fram_dev_write_frame (dev : fram_dev_t) (offset : Nat) (data : List Nat)
    (hsz : dev.hal.size_bytes < U32) :
    (fram_dev_write dev offset data).2.hal.size_bytes = dev.hal.size_bytes ∧
    ∀ a, a < offset ∨ offset + data.length ≤ a →
      (fram_dev_write dev offset data).2.hal.ctx.buffer a = dev.hal.ctx.buffer a := by
  unfold fram_dev_write
  split_ifs with h0 h1 h2
  · exact ⟨rfl, fun _ _ => rfl⟩
  · exact ⟨rfl, fun _ _ => rfl⟩
  · rw [dev_record_error_hal]
    exact ⟨rfl, fun _ _ => rfl⟩
  · exact fram_dev_write_loop_frame _ _ _ _ _ (by omega)
  · exact fram_dev_write_loop_frame _ _ _ _ _ (by omega)

/-- The chunk loop of `fram_dev_write` keeps the device size. -/
theorem fram_dev_write_loop_size (mt : Nat) :
    ∀ (fuel : Nat) (dev : fram_dev_t) (addr : Nat) (data : List Nat),
      (fram_dev_write_loop fuel dev addr data mt).2.hal.size_bytes = dev.hal.size_bytes := by
  intro fuel
  induction fuel with
  | zero =>
    intro dev addr data
    unfold fram_dev_write_loop
    split_ifs <;> rfl
  | succ fuel ih =>
    intro dev addr data
    unfold fram_dev_write_loop
    simp only
    generalize (if data.length > mt then mt else data.length) = c
    have f1 := (fram_hal_mock_write_frame dev.hal addr (data.take c)).1
    split_ifs with h0 h1
    · rfl
    · rw [dev_record_error_hal]
      exact f1
    · exact (ih _ _ _).trans f1

/-- The function `fram_dev_write` keeps the device size. -/
theorem fram_dev_write_size (dev : fram_dev_t) (offset : Nat) (data : List Nat) :
    (fram_dev_write dev offset data).2.hal.size_bytes = dev.hal.size_bytes := by
  unfold fram_dev_write
  split_ifs
  · rfl
  · rfl
  · rw [dev_record_error_hal]
  · exact fram_dev_write_loop_size _ _ _ _ _
  · exact fram_dev_write_loop_size _ _ _ _ _

/-- The chunk loop of `fram_dev_read` keeps the size and the media. -/
theorem fram_dev_read_loop_frame (mt : Nat) :
    ∀ (fuel : Nat) (dev : fram_dev_t) (addr remaining : Nat) (out : List Nat),
      (fram_dev_read_loop fuel dev addr remaining mt out).2.2.hal.size_bytes
        = dev.hal.size_bytes ∧
      (fram_dev_read_loop fuel dev addr remaining mt out).2.2.hal.ctx.buffer
        = dev.hal.ctx.buffer := by
  intro fuel
  induction fuel with
  | zero =>
    intro dev addr remaining out
    unfold fram_dev_read_loop
    split_ifs <;> exact ⟨rfl, rfl⟩
  | succ fuel ih =>
    intro dev addr remaining out
    unfold fram_dev_read_loop
    simp only
    generalize (if remaining > mt then mt else remaining) = c
    obtain ⟨f1, f2⟩ := fram_hal_mock_read_frame dev.hal addr c
    split_ifs with h0 h1
    · exact ⟨rfl, rfl⟩
    · rw [dev_record_error_hal]
      exact ⟨f1, f2⟩
    · obtain ⟨g1, g2⟩ := ih (fram_dev_record_success
        { dev with hal := (fram_hal_mock_read dev.hal addr c).2.2,
                   read_count := (dev.read_count + 1) % U32 })
        ((addr + c) % U32) (remaining - c) (out ++ (fram_hal_mock_read dev.hal addr c).2.1)
      exact ⟨g1.trans f1, g2.trans f2⟩

/-- The function `fram_dev_read` keeps the size and the media. -/
theorem fram_dev_read_frame (dev : fram_dev_t) (offset len : Nat) :
    (fram_dev_read dev offset len).2.2.hal.size_bytes = dev.hal.size_bytes ∧
    (fram_dev_read dev offset len).2.2.hal.ctx.buffer = dev.hal.ctx.buffer := by
  unfold fram_dev_read
  split_ifs with h0 h1 h2
  · exact ⟨rfl, rfl⟩
  · exact ⟨rfl, rfl⟩
  · rw [dev_record_error_hal]
    exact ⟨rfl, rfl⟩
  · exact fram_dev_read_loop_frame _ _ _ _ _ _
  · exact fram_dev_read_loop_frame _ _ _ _ _ _

/-! ## What the partition layer can change -/

theorem pm_keeps_refl (part : Option fram_partition_t) (pm : fram_pm_t) :
    PmKeeps part pm pm :=
  ⟨rfl, rfl, rfl, rfl, fun _ _ _ _ _ _ => rfl⟩

theorem pm_keeps_trans (part : Option fram_partition_t) (pm pm1 pm2 : fram_pm_t)
    (h1 : PmKeeps part pm pm1) (h2 : PmKeeps part pm1 pm2) : PmKeeps part pm pm2 := by
  obtain ⟨a1, a2, a3, a4, a5⟩ := h1
  obtain ⟨b1, b2, b3, b4, b5⟩ := h2
  refine ⟨b1.trans a1, b2.trans a2, b3.trans a3, b4.trans a4, fun p hp hin hsz a ha => ?_⟩
  rw [b5 p hp (by rw [a4]; exact hin) (by rw [a4]; exact hsz) a ha]
  exact a5 p hp hin hsz a ha

/-- The function `fram_pm_read` keeps the media. -/
theorem fram_pm_read_keeps (pm : fram_pm_t) (part : Option fram_partition_t)
    (offset len : Nat) : PmKeeps part pm (fram_pm_read pm part offset len).2.2 := by
  unfold fram_pm_read
  cases part with
  | none => exact pm_keeps_refl _ _
  | some p =>
    simp only
    obtain ⟨f1, f2⟩ := fram_dev_read_frame pm.dev ((p.offset + offset) % U32) len
    split_ifs
    · exact pm_keeps_refl _ _
    · exact pm_keeps_refl _ _
    · exact ⟨rfl, rfl, rfl, f1, fun _ _ _ _ a _ => by
        show (fram_dev_read pm.dev ((p.offset + offset) % U32) len).2.2.hal.ctx.buffer a = _
        rw [f2]⟩

/-- The range check of the partition layer. -/
theorem fram_pm_valid_range_fits (p : fram_partition_t) (offset len : Nat)
    (h : ¬ (!fram_pm_is_valid_range p offset len) = true) :
    len = 0 ∨ offset + len ≤ p.size := by
  unfold fram_pm_is_valid_range at h
  by_cases h0 : len = 0
  · exact Or.inl h0
  · rw [if_neg h0] at h
    by_cases h1 : offset > p.size ∨ len > p.size ∨ offset > p.size - len
    · rw [if_pos h1] at h
      exact absurd rfl h
    · exact Or.inr (by omega)

/-- The function `fram_pm_write` through the partition `p` changes only bytes
in `[p.offset + offset, p.offset + offset + len)`, and none unless that range
lies inside the partition. -/
theorem fram_pm_write_range (pm : fram_pm_t) (p : fram_partition_t) (offset : Nat)
    (data : List Nat) (hin : p.offset + p.size ≤ pm.dev.hal.size_bytes)
    (hsz : pm.dev.hal.size_bytes < U32) :
    (fram_pm_write pm (some p) offset data).2.partitions = pm.partitions ∧
    (fram_pm_write pm (some p) offset data).2.partition_count = pm.partition_count ∧
    (fram_pm_write pm (some p) offset data).2.initialized = pm.initialized ∧
    (fram_pm_write pm (some p) offset data).2.dev.hal.size_bytes = pm.dev.hal.size_bytes ∧
    (∀ a, a < p.offset + offset ∨ p.offset + offset + data.length ≤ a →
      (fram_pm_write pm (some p) offset data).2.dev.hal.ctx.buffer a
        = pm.dev.hal.ctx.buffer a) ∧
    (¬ offset + data.length ≤ p.size →
      (fram_pm_write pm (some p) offset data).2.dev.hal.ctx.buffer
        = pm.dev.hal.ctx.buffer) := by
  unfold fram_pm_write
  simp only
  split_ifs with h1 h2 h3
  · exact ⟨rfl, rfl, rfl, rfl, fun _ _ => rfl, fun _ => rfl⟩
  · exact ⟨rfl, rfl, rfl, rfl, fun _ _ => rfl, fun _ => rfl⟩
  · exact ⟨rfl, rfl, rfl, rfl, fun _ _ => rfl, fun _ => rfl⟩
  · obtain ⟨f1, f2⟩ := fram_dev_write_frame pm.dev ((p.offset + offset) % U32) data hsz
    rcases fram_pm_valid_range_fits p offset data.length h3 with h0 | hfit
    · have hnil : data = [] := List.eq_nil_of_length_eq_zero h0
      subst hnil
      have e : fram_dev_write pm.dev ((p.offset + offset) % U32) [] = (ESP_OK, pm.dev) := by
        unfold fram_dev_write
        rw [if_pos List.length_nil]
      rw [e]
      exact ⟨rfl, rfl, rfl, rfl, fun _ _ => rfl, fun _ => rfl⟩
    · have hU : (p.offset + offset) % U32 = p.offset + offset :=
        Nat.mod_eq_of_lt (by omega)
      rw [hU] at f1 f2 ⊢
      exact ⟨rfl, rfl, rfl, f1, f2, fun hn => absurd hfit hn⟩

/-- The function `fram_pm_write` keeps every byte outside the partition. -/
theorem fram_pm_write_keeps (pm : fram_pm_t) (part : Option fram_partition_t)
    (offset : Nat) (data : List Nat) :
    PmKeeps part pm (fram_pm_write pm part offset data).2 := by
  cases part with
  | none => exact pm_keeps_refl _ _
  | some p =>
    by_cases hc : p.offset + p.size ≤ pm.dev.hal.size_bytes ∧ pm.dev.hal.size_bytes < U32
    · obtain ⟨a1, a2, a3, a4, a5, a6⟩ := fram_pm_write_range pm p offset data hc.1 hc.2
      refine ⟨a1, a2, a3, a4, fun q hq _ _ a ha => ?_⟩
      have hqp : p = q := Option.some.inj hq
      subst hqp
      by_cases hfit : offset + data.length ≤ p.size
      · exact a5 a (by omega)
      · rw [a6 hfit]
    · unfold fram_pm_write
      simp only
      split_ifs
      · exact pm_keeps_refl _ _
      · exact pm_keeps_refl _ _
      · exact pm_keeps_refl _ _
      · refine ⟨rfl, rfl, rfl, ?_, fun q hq hin hsz => ?_⟩
        · exact fram_dev_write_size _ _ _
        · have hqp : p = q := Option.some.inj hq
          subst hqp
          exact absurd ⟨hin, hsz⟩ hc

theorem pm_keeps_ite2 (part : Option fram_partition_t) (pm : fram_pm_t) (c : Prop)
    [Decidable c] (a b : esp_err_t × fram_pm_t)
    (ha : PmKeeps part pm a.2) (hb : PmKeeps part pm b.2) :
    PmKeeps part pm (if c then a else b).2 := by
  split_ifs
  · exact ha
  · exact hb

theorem pm_keeps_ite3 {α : Type} (part : Option fram_partition_t) (pm : fram_pm_t) (c : Prop)
    [Decidable c] (a b : esp_err_t × α × fram_pm_t)
    (ha : PmKeeps part pm a.2.2) (hb : PmKeeps part pm b.2.2) :
    PmKeeps part pm (if c then a else b).2.2 := by
  split_ifs
  · exact ha
  · exact hb

/-- The chunk loop of `fram_pm_erase` keeps every byte outside the partition. -/
theorem fram_pm_erase_loop_keeps (p : fram_partition_t) :
    ∀ (fuel : Nat) (pm : fram_pm_t) (offset remaining : Nat),
      PmKeeps (some p) pm (fram_pm_erase_loop fuel pm p offset remaining).2 := by
  intro fuel
  induction fuel with
  | zero =>
    intro pm offset remaining
    unfold fram_pm_erase_loop
    exact pm_keeps_ite2 _ _ _ _ _ (pm_keeps_refl _ _) (pm_keeps_refl _ _)
  | succ fuel ih =>
    intro pm offset remaining
    unfold fram_pm_erase_loop
    simp only
    generalize (if remaining > FRAM_PM_ERASE_CHUNK then FRAM_PM_ERASE_CHUNK else remaining) = c
    have hw := fram_pm_write_keeps pm (some p) offset (List.replicate c 0xFF)
    refine pm_keeps_ite2 _ _ _ _ _ (pm_keeps_refl _ _) ?_
    refine pm_keeps_ite2 _ _ _ _ _ hw ?_
    exact pm_keeps_trans _ _ _ _ hw (ih _ _ _)

/-- The function `fram_pm_erase` keeps every byte outside the partition. -/
theorem fram_pm_erase_keeps (pm : fram_pm_t) (part : Option fram_partition_t) :
    PmKeeps part pm (fram_pm_erase pm part).2 := by
  unfold fram_pm_erase
  cases part with
  | none => exact pm_keeps_refl _ _
  | some p =>
    simp only
    refine pm_keeps_ite2 _ _ _ _ _ (pm_keeps_refl _ _) ?_
    refine pm_keeps_ite2 _ _ _ _ _ (pm_keeps_refl _ _) ?_
    exact fram_pm_erase_loop_keeps p _ _ _ _

/-! ## The ring keeps to its partition -/

theorem fram_ring_validate_keeps (ring : fram_ring_t) (pm : fram_pm_t) (slot : Nat) :
    PmKeeps ring.part pm (fram_ring_validate_slot ring pm slot).2.2 := by
  have h1 := fram_pm_read_keeps pm ring.part (fram_ring_commit_offset ring slot) 1
  have h2 := fram_pm_read_keeps (fram_pm_read pm ring.part (fram_ring_commit_offset ring slot) 1).2.2
    ring.part (fram_ring_slot_offset ring slot) RING_HEADER_SIZE
  have h12 := pm_keeps_trans _ _ _ _ h1 h2
  have h3 := fun len => fram_pm_read_keeps
    (fram_pm_read (fram_pm_read pm ring.part (fram_ring_commit_offset ring slot) 1).2.2
      ring.part (fram_ring_slot_offset ring slot) RING_HEADER_SIZE).2.2 ring.part
    ((fram_ring_slot_offset ring slot + RING_HEADER_SIZE) % U32) len
  unfold fram_ring_validate_slot fram_ring_read_commit fram_ring_read_header
  simp only
  split_ifs
  all_goals first
    | exact h1
    | exact h12
    | exact pm_keeps_trans _ _ _ _ h12 (h3 _)

theorem fram_ring_scan_keeps (ring : fram_ring_t) :
    ∀ (slots : List Nat) (st : ring_scan_t) (pm : fram_pm_t),
      PmKeeps ring.part pm (fram_ring_init_scan ring slots st pm).2 := by
  intro slots
  induction slots with
  | nil => intro st pm; exact pm_keeps_refl _ _
  | cons slot rest ih =>
    intro st pm
    have hv := fram_ring_validate_keeps ring pm slot
    unfold fram_ring_init_scan
    simp only
    split
    · split_ifs
      · exact pm_keeps_trans _ _ _ _ hv (ih _ _)
      · exact pm_keeps_trans _ _ _ _ hv (ih _ _)
    · exact pm_keeps_trans _ _ _ _ hv (ih _ _)

theorem fram_ring_walk_keeps (ring : fram_ring_t) :
    ∀ (fuel : Nat) (pm : fram_pm_t) (run_len expected_seq slot : Nat),
      PmKeeps ring.part pm (fram_ring_init_walk ring fuel pm run_len expected_seq slot).2 := by
  intro fuel
  induction fuel with
  | zero => intro pm _ _ _; exact pm_keeps_refl _ _
  | succ fuel ih =>
    intro pm run_len expected_seq slot
    have hv := fram_ring_validate_keeps ring pm slot
    unfold fram_ring_init_walk
    simp only
    repeat' split
    all_goals first
      | exact pm_keeps_refl _ _
      | exact hv
      | exact pm_keeps_trans _ _ _ _ hv (ih _ _ _ _)

/-- The function `fram_ring_init` keeps every byte outside the partition it
finds. -/
theorem fram_ring_init_keeps (K : Kconfig) (ring0 : fram_ring_t) (pm : fram_pm_t)
    (cfg : fram_ring_config_t) :
    PmKeeps (fram_pm_find pm cfg.partition_name) pm (fram_ring_init K ring0 pm cfg).2.2 := by
  unfold fram_ring_init
  refine pm_keeps_ite3 _ _ _ _ _ (pm_keeps_refl _ _) ?_
  simp only
  cases hf : fram_pm_find pm cfg.partition_name with
  | none => exact pm_keeps_refl _ _
  | some p =>
    simp only
    refine pm_keeps_ite3 _ _ _ _ _ (pm_keeps_refl _ _) ?_
    have hs := fram_ring_scan_keeps
      { part := some p, entry_size := (RING_HEADER_SIZE + cfg.max_payload + 1) % U32,
        max_payload := cfg.max_payload,
        capacity := p.size / ((RING_HEADER_SIZE + cfg.max_payload + 1) % U32),
        magic := cfg.magic, head_slot := 0, tail_slot := 0, head_seq := 0, count := 0,
        mutex := SemaphoreHandle_t.free, ready := false }
    have hw := fram_ring_walk_keeps
      { part := some p, entry_size := (RING_HEADER_SIZE + cfg.max_payload + 1) % U32,
        max_payload := cfg.max_payload,
        capacity := p.size / ((RING_HEADER_SIZE + cfg.max_payload + 1) % U32),
        magic := cfg.magic, head_slot := 0, tail_slot := 0, head_seq := 0, count := 0,
        mutex := SemaphoreHandle_t.free, ready := false }
    refine pm_keeps_ite3 _ _ _ _ _ (hs _ _ _) ?_
    exact pm_keeps_trans _ _ _ _ (hs _ _ _) (hw _ _ _ _ _)

/-- The function `fram_ring_append` keeps every byte outside the partition of
the ring, whether it succeeds or fails. -/
theorem fram_ring_append_keeps (ring : fram_ring_t) (pm : fram_pm_t) (payload : List Nat)
    (now : Nat) : PmKeeps ring.part pm (fram_ring_append ring pm payload now).2.2 := by
  have W := fun pm1 off data => fram_pm_write_keeps pm1 ring.part off data
  have h0 : PmKeeps ring.part pm (fram_ring_write_commit ring pm ring.head_slot 0x00).2 :=
    W _ _ _
  unfold fram_ring_append
  refine pm_keeps_ite3 _ _ _ _ _ (pm_keeps_refl _ _) ?_
  refine pm_keeps_ite3 _ _ _ _ _ (pm_keeps_refl _ _) ?_
  refine pm_keeps_ite3 _ _ _ _ _ (pm_keeps_refl _ _) ?_
  simp only
  refine pm_keeps_ite3 _ _ _ _ _ h0 ?_
  generalize fram_ring_write_commit ring pm ring.head_slot 0x00 = w0 at h0 ⊢
  have W1 : ∀ data, PmKeeps ring.part pm
      (fram_pm_write w0.2 ring.part (fram_ring_slot_offset ring ring.head_slot) data).2 :=
    fun data => pm_keeps_trans _ _ _ _ h0 (W _ _ _)
  generalize hw1 : fram_pm_write w0.2 ring.part (fram_ring_slot_offset ring ring.head_slot) _
    = w1
  have h1 : PmKeeps ring.part pm w1.2 := by
    rw [← hw1]
    exact W1 _
  have h2 : PmKeeps ring.part pm
      (if w1.1 = ESP_OK ∧ payload.length > 0 then
        fram_pm_write w1.2 ring.part
          ((fram_ring_slot_offset ring ring.head_slot + RING_HEADER_SIZE) % U32) payload
       else w1).2 :=
    pm_keeps_ite2 _ _ _ _ _ (pm_keeps_trans _ _ _ _ h1 (W _ _ _)) h1
  generalize (if w1.1 = ESP_OK ∧ payload.length > 0 then
        fram_pm_write w1.2 ring.part
          ((fram_ring_slot_offset ring ring.head_slot + RING_HEADER_SIZE) % U32) payload
       else w1) = w2 at h2 ⊢
  have h3 : PmKeeps ring.part pm
      (if w2.1 = ESP_OK then fram_ring_write_commit ring w2.2 ring.head_slot FRAM_RING_COMMIT
        else w2).2 :=
    pm_keeps_ite2 _ _ _ _ _ (pm_keeps_trans _ _ _ _ h2 (W _ _ _)) h2
  generalize (if w2.1 = ESP_OK then
      fram_ring_write_commit ring w2.2 ring.head_slot FRAM_RING_COMMIT else w2) = w3 at h3 ⊢
  exact pm_keeps_ite3 _ _ _ _ _ h3 h3

/-- The function `fram_ring_clear` keeps every byte outside the partition of
the ring. -/
theorem fram_ring_clear_keeps (ring : fram_ring_t) (pm : fram_pm_t) :
    PmKeeps ring.part pm (fram_ring_clear ring pm).2.2 := by
  unfold fram_ring_clear
  refine pm_keeps_ite3 _ _ _ _ _ (pm_keeps_refl _ _) ?_
  refine pm_keeps_ite3 _ _ _ _ _ (pm_keeps_refl _ _) ?_
  exact pm_keeps_ite3 _ _ _ _ _ (fram_pm_erase_keeps _ _) (fram_pm_erase_keeps _ _)

/-- The function `fram_ring_read_slot_payload` keeps the media. -/
theorem fram_ring_read_slot_keeps (ring : fram_ring_t) (pm : fram_pm_t) (slot : Nat)
    (out : ring_peek_t) :
    PmKeeps ring.part pm (fram_ring_read_slot_payload ring pm slot out).2.2 := by
  have hv := fram_ring_validate_keeps ring pm slot
  have R := fun off len => pm_keeps_trans _ _ _ _ hv
    (fram_pm_read_keeps (fram_ring_validate_slot ring pm slot).2.2 ring.part off len)
  unfold fram_ring_read_slot_payload
  simp only
  repeat' split
  all_goals first
    | exact hv
    | exact R _ _

/-- The peeks of the ring keep the media. -/
theorem fram_ring_peek_keeps (ring : fram_ring_t) (pm : fram_pm_t) (out : ring_peek_t)
    (len : Option Nat) :
    PmKeeps ring.part pm (fram_ring_peek_oldest ring pm out).2.2 ∧
    PmKeeps ring.part pm (fram_ring_peek_newest ring pm out).2.2 ∧
    PmKeeps ring.part pm (fram_ring_peek_oldest_len ring pm len).2.2 ∧
    PmKeeps ring.part pm (fram_ring_peek_newest_len ring pm len).2.2 := by
  have ho : ∀ o, PmKeeps ring.part pm (fram_ring_peek_oldest ring pm o).2.2 := by
    intro o
    unfold fram_ring_peek_oldest
    refine pm_keeps_ite3 _ _ _ _ _ (pm_keeps_refl _ _) ?_
    refine pm_keeps_ite3 _ _ _ _ _ (pm_keeps_refl _ _) ?_
    exact pm_keeps_ite3 _ _ _ _ _ (pm_keeps_refl _ _) (fram_ring_read_slot_keeps _ _ _ _)
  have hn : ∀ o, PmKeeps ring.part pm (fram_ring_peek_newest ring pm o).2.2 := by
    intro o
    unfold fram_ring_peek_newest
    refine pm_keeps_ite3 _ _ _ _ _ (pm_keeps_refl _ _) ?_
    refine pm_keeps_ite3 _ _ _ _ _ (pm_keeps_refl _ _) ?_
    exact pm_keeps_ite3 _ _ _ _ _ (pm_keeps_refl _ _) (fram_ring_read_slot_keeps _ _ _ _)
  refine ⟨ho out, hn out, ?_, ?_⟩
  · unfold fram_ring_peek_oldest_len
    exact pm_keeps_ite3 _ _ _ _ _ (pm_keeps_refl _ _) (ho _)
  · unfold fram_ring_peek_newest_len
    exact pm_keeps_ite3 _ _ _ _ _ (pm_keeps_refl _ _) (hn _)

/-- The loop of `fram_ring_iterate` keeps the media. -/
theorem fram_ring_iterate_loop_keeps {σ : Type} (K : Kconfig) (ring : fram_ring_t)
    (cb : fram_ring_iter_fn σ) :
    ∀ (remaining : Nat) (pm : fram_pm_t) (slot : Nat) (buf : List Nat) (ctx : σ),
      PmKeeps ring.part pm (fram_ring_iterate_loop K ring cb remaining pm slot buf ctx).2.2 := by
  intro remaining
  induction remaining with
  | zero =>
    intro pm slot buf ctx
    exact pm_keeps_refl _ _
  | succ n ih =>
    intro pm slot buf ctx
    unfold fram_ring_iterate_loop
    simp only
    have hr := fram_ring_read_slot_keeps ring pm slot
      { payload := some buf, len := some K.FRAM_RING_MAX_PAYLOAD, seq := some 0,
        ts_us := some 0 }
    refine pm_keeps_ite3 _ _ _ _ _ hr ?_
    refine pm_keeps_ite3 _ _ _ _ _ hr ?_
    exact pm_keeps_trans _ _ _ _ hr (ih _ _ _ _)

/-- The function `fram_ring_iterate` keeps the media. -/
theorem fram_ring_iterate_keeps {σ : Type} (K : Kconfig) (ring : fram_ring_t)
    (pm : fram_pm_t) (cb : Option (fram_ring_iter_fn σ)) (ctx : σ) (buf : List Nat) :
    PmKeeps ring.part pm (fram_ring_iterate K ring pm cb ctx buf).2.2 := by
  unfold fram_ring_iterate
  cases cb with
  | none => exact pm_keeps_refl _ _
  | some f =>
    simp only
    refine pm_keeps_ite3 _ _ _ _ _ (pm_keeps_refl _ _) ?_
    exact pm_keeps_ite3 _ _ _ _ _ (pm_keeps_refl _ _)
      (fram_ring_iterate_loop_keeps K ring f _ _ _ _ _)

/-! ## The versioned slots keep to their partition -/

theorem fram_vslot_validate_keeps (vs : fram_vslot_t) (pm : fram_pm_t) (slot : Nat) :
    PmKeeps vs.part pm (fram_vslot_validate_slot vs pm slot).2.2 := by
  have h1 := fram_pm_read_keeps pm vs.part (fram_vslot_commit_offset vs slot) 1
  have h2 := fram_pm_read_keeps (fram_pm_read pm vs.part (fram_vslot_commit_offset vs slot) 1).2.2
    vs.part (fram_vslot_slot_offset vs slot) VSLOT_HEADER_SIZE
  have h12 := pm_keeps_trans _ _ _ _ h1 h2
  have h3 := fun len => fram_pm_read_keeps
    (fram_pm_read (fram_pm_read pm vs.part (fram_vslot_commit_offset vs slot) 1).2.2
      vs.part (fram_vslot_slot_offset vs slot) VSLOT_HEADER_SIZE).2.2 vs.part
    ((fram_vslot_slot_offset vs slot + VSLOT_HEADER_SIZE) % U32) len
  unfold fram_vslot_validate_slot fram_vslot_read_commit fram_vslot_read_header
  simp only
  split_ifs
  all_goals first
    | exact h1
    | exact h12
    | exact pm_keeps_trans _ _ _ _ h12 (h3 _)

theorem fram_vslot_scan_keeps (vs : fram_vslot_t) :
    ∀ (slots : List Nat) (st : vslot_scan_t) (pm : fram_pm_t),
      PmKeeps vs.part pm (fram_vslot_init_scan vs slots st pm).2 := by
  intro slots
  induction slots with
  | nil => intro st pm; exact pm_keeps_refl _ _
  | cons slot rest ih =>
    intro st pm
    have hv := fram_vslot_validate_keeps vs pm slot
    unfold fram_vslot_init_scan
    simp only
    split
    · split_ifs
      · exact pm_keeps_trans _ _ _ _ hv (ih _ _)
      · exact pm_keeps_trans _ _ _ _ hv (ih _ _)
    · exact pm_keeps_trans _ _ _ _ hv (ih _ _)

/-- The function `fram_vslot_init` keeps the media. -/
theorem fram_vslot_init_keeps (K : Kconfig) (vs0 : fram_vslot_t) (pm : fram_pm_t)
    (cfg : fram_vslot_config_t) :
    PmKeeps (fram_pm_find pm cfg.partition_name) pm (fram_vslot_init K vs0 pm cfg).2.2 := by
  unfold fram_vslot_init
  refine pm_keeps_ite3 _ _ _ _ _ (pm_keeps_refl _ _) ?_
  refine pm_keeps_ite3 _ _ _ _ _ (pm_keeps_refl _ _) ?_
  simp only
  cases hf : fram_pm_find pm cfg.partition_name with
  | none => exact pm_keeps_refl _ _
  | some p =>
    simp only
    refine pm_keeps_ite3 _ _ _ _ _ (pm_keeps_refl _ _) ?_
    have hs := fram_vslot_scan_keeps
      { part := some p, slot_count := cfg.slot_count, max_payload := cfg.max_payload,
        slot_size := (VSLOT_HEADER_SIZE + cfg.max_payload + 1) % U32, magic := cfg.magic,
        active_slot := 0, active_version := 0, has_data := false,
        mutex := SemaphoreHandle_t.free }
    exact pm_keeps_ite3 _ _ _ _ _ (hs _ _ _) (hs _ _ _)

/-- The function `fram_vslot_save` keeps every byte outside the partition of
the slot store, whether it succeeds or fails. -/
theorem fram_vslot_save_keeps (vs : fram_vslot_t) (pm : fram_pm_t) (payload : List Nat)
    (now : Nat) : PmKeeps vs.part pm (fram_vslot_save vs pm payload now).2.2 := by
  have W := fun pm1 off data => fram_pm_write_keeps pm1 vs.part off data
  unfold fram_vslot_save
  refine pm_keeps_ite3 _ _ _ _ _ (pm_keeps_refl _ _) ?_
  refine pm_keeps_ite3 _ _ _ _ _ (pm_keeps_refl _ _) ?_
  simp only
  generalize (if vs.has_data = true then (vs.active_slot + 1) % U32 % vs.slot_count else 0)
    = slot
  have h0 : PmKeeps vs.part pm (fram_vslot_write_commit vs pm slot 0x00).2 := W _ _ _
  refine pm_keeps_ite3 _ _ _ _ _ h0 ?_
  generalize fram_vslot_write_commit vs pm slot 0x00 = w0 at h0 ⊢
  have W1 : ∀ data, PmKeeps vs.part pm
      (fram_pm_write w0.2 vs.part (fram_vslot_slot_offset vs slot) data).2 :=
    fun data => pm_keeps_trans _ _ _ _ h0 (W _ _ _)
  generalize hw1 : fram_pm_write w0.2 vs.part (fram_vslot_slot_offset vs slot) _ = w1
  have h1 : PmKeeps vs.part pm w1.2 := by
    rw [← hw1]
    exact W1 _
  have h2 : PmKeeps vs.part pm
      (if w1.1 = ESP_OK ∧ payload.length > 0 then
        fram_pm_write w1.2 vs.part
          ((fram_vslot_slot_offset vs slot + VSLOT_HEADER_SIZE) % U32) payload
       else w1).2 :=
    pm_keeps_ite2 _ _ _ _ _ (pm_keeps_trans _ _ _ _ h1 (W _ _ _)) h1
  generalize (if w1.1 = ESP_OK ∧ payload.length > 0 then
        fram_pm_write w1.2 vs.part
          ((fram_vslot_slot_offset vs slot + VSLOT_HEADER_SIZE) % U32) payload
       else w1) = w2 at h2 ⊢
  have h3 : PmKeeps vs.part pm
      (if w2.1 = ESP_OK then fram_vslot_write_commit vs w2.2 slot FRAM_VSLOT_COMMIT
        else w2).2 :=
    pm_keeps_ite2 _ _ _ _ _ (pm_keeps_trans _ _ _ _ h2 (W _ _ _)) h2
  generalize (if w2.1 = ESP_OK then
      fram_vslot_write_commit vs w2.2 slot FRAM_VSLOT_COMMIT else w2) = w3 at h3 ⊢
  exact pm_keeps_ite3 _ _ _ _ _ h3 h3

/-- The functions `fram_vslot_load`, `fram_vslot_peek_len` and
`fram_vslot_clear` keep every byte outside the partition of the slot store. -/
theorem fram_vslot_read_keeps (vs : fram_vslot_t) (pm : fram_pm_t) (out : vslot_out_t)
    (len : Option Nat) :
    PmKeeps vs.part pm (fram_vslot_load vs pm out).2.2 ∧
    PmKeeps vs.part pm (fram_vslot_peek_len vs pm len).2.2 ∧
    PmKeeps vs.part pm (fram_vslot_clear vs pm).2.2 := by
  have hv := fram_vslot_validate_keeps vs pm vs.active_slot
  have R := fun off len => pm_keeps_trans _ _ _ _ hv
    (fram_pm_read_keeps (fram_vslot_validate_slot vs pm vs.active_slot).2.2 vs.part off len)
  refine ⟨?_, ?_, ?_⟩
  · unfold fram_vslot_load
    simp only
    repeat' split
    all_goals first
      | exact pm_keeps_refl _ _
      | exact hv
      | exact R _ _
  · unfold fram_vslot_peek_len
    simp only
    repeat' split
    all_goals first
      | exact pm_keeps_refl _ _
      | exact hv
  · unfold fram_vslot_clear
    refine pm_keeps_ite3 _ _ _ _ _ (pm_keeps_refl _ _) ?_
    exact pm_keeps_ite3 _ _ _ _ _ (fram_pm_erase_keeps _ _) (fram_pm_erase_keeps _ _)

/-! ## The key/value store keeps to its partition -/

theorem fram_kvs_write_record_keeps (kvs : fram_kvs_t) (pm : fram_pm_t)
    (hdr : fram_kvs_header_t) (key value : List Nat) :
    PmKeeps kvs.part pm (fram_kvs_write_record kvs pm hdr key value).2 := by
  unfold fram_kvs_write_record fram_kvs_write_commit
  simp only
  have W := fun pm1 off data => fram_pm_write_keeps pm1 kvs.part off data
  have h0 := W pm (fram_kvs_commit_offset kvs.write_offset hdr.key_len hdr.value_len) [0]
  have h1 := pm_keeps_trans _ _ _ _ h0 (W _ kvs.write_offset hdr.to_bytes)
  split_ifs
  all_goals first
    | exact h0
    | exact h1
    | exact pm_keeps_trans _ _ _ _ h1 (W _ _ _)
    | exact pm_keeps_trans _ _ _ _ (pm_keeps_trans _ _ _ _ h1 (W _ _ _)) (W _ _ _)
    | exact pm_keeps_trans _ _ _ _ (pm_keeps_trans _ _ _ _
        (pm_keeps_trans _ _ _ _ h1 (W _ _ _)) (W _ _ _)) (W _ _ _)

/-- The functions `fram_kvs_set` and `fram_kvs_delete` keep every byte outside
the partition of the store, whether they succeed or fail. -/
theorem fram_kvs_write_keeps (K : Kconfig) (kvs : fram_kvs_t) (pm : fram_pm_t)
    (key value : List Nat) :
    PmKeeps kvs.part pm (fram_kvs_set K kvs pm key value).2.2 ∧
    PmKeeps kvs.part pm (fram_kvs_delete kvs pm key).2.2 := by
  constructor
  · unfold fram_kvs_set
    cases hp : kvs.part <;> simp only <;> split_ifs <;>
      first
        | exact pm_keeps_refl _ _
        | (rw [← hp]; exact fram_kvs_write_record_keeps _ _ _ _ _)
  · unfold fram_kvs_delete
    cases hp : kvs.part <;> simp only <;> split_ifs <;>
      first
        | exact pm_keeps_refl _ _
        | (rw [← hp]; exact fram_kvs_write_record_keeps _ _ _ _ _)

theorem fram_kvs_crc_loop_keeps (kvs : fram_kvs_t) :
    ∀ (fuel : Nat) (pm : fram_pm_t) (voff rem crc : Nat),
      PmKeeps kvs.part pm (fram_kvs_crc_loop kvs fuel pm voff rem crc).2.2 := by
  intro fuel
  induction fuel with
  | zero => intro pm _ _ _; exact pm_keeps_refl _ _
  | succ fuel ih =>
    intro pm voff rem crc
    unfold fram_kvs_crc_loop
    simp only
    split_ifs
    all_goals first
      | exact pm_keeps_refl _ _
      | exact fram_pm_read_keeps _ _ _ _
      | exact pm_keeps_trans _ _ _ _ (fram_pm_read_keeps _ _ _ _) (ih _ _ _ _)

theorem fram_kvs_compute_crc_keeps (kvs : fram_kvs_t) (pm : fram_pm_t) (offset : Nat)
    (hdr : fram_kvs_header_t) (key_buf : List Nat) :
    PmKeeps kvs.part pm (fram_kvs_compute_crc kvs pm offset hdr key_buf).2.2 := by
  unfold fram_kvs_compute_crc
  simp only
  split_ifs
  all_goals first
    | exact pm_keeps_refl _ _
    | exact fram_pm_read_keeps _ _ _ _
    | exact fram_kvs_crc_loop_keeps _ _ _ _ _ _
    | exact pm_keeps_trans _ _ _ _ (fram_pm_read_keeps _ _ _ _)
        (fram_kvs_crc_loop_keeps _ _ _ _ _ _)

theorem pm_keeps_ite4 {α β : Type} (part : Option fram_partition_t) (pm : fram_pm_t)
    (c : Prop) [Decidable c] (a b : esp_err_t × α × β × fram_pm_t)
    (ha : PmKeeps part pm a.2.2.2) (hb : PmKeeps part pm b.2.2.2) :
    PmKeeps part pm (if c then a else b).2.2.2 := by
  split_ifs
  · exact ha
  · exact hb

theorem fram_kvs_find_end_loop_keeps (K : Kconfig) (kvs : fram_kvs_t) (p : fram_partition_t) :
    ∀ (fuel : Nat) (pm : fram_pm_t) (off ns : Nat) (kb : List Nat),
      PmKeeps kvs.part pm (fram_kvs_find_end_loop K kvs p fuel pm off ns kb).2.2.2 := by
  intro fuel
  induction fuel with
  | zero => intro pm _ _ _; exact pm_keeps_refl _ _
  | succ fuel ih =>
    intro pm off ns kb
    have r1 : PmKeeps kvs.part pm (fram_kvs_read_header kvs pm off).2.2 :=
      fram_pm_read_keeps _ _ _ _
    have r2 := fun kl vl => pm_keeps_trans _ _ _ _ r1
      (show PmKeeps kvs.part (fram_kvs_read_header kvs pm off).2.2
        (fram_kvs_read_commit kvs (fram_kvs_read_header kvs pm off).2.2 off kl vl).2.2 from
          fram_pm_read_keeps _ _ _ _)
    have r3 := fun kl vl hdr kb => pm_keeps_trans _ _ _ _ (r2 kl vl)
      (fram_kvs_compute_crc_keeps kvs
        (fram_kvs_read_commit kvs (fram_kvs_read_header kvs pm off).2.2 off kl vl).2.2 off hdr kb)
    unfold fram_kvs_find_end_loop
    simp only
    refine pm_keeps_ite4 _ pm _ _ _ ?_ (pm_keeps_refl _ _)
    refine pm_keeps_ite4 _ pm _ _ _ r1 ?_
    refine pm_keeps_ite4 _ pm _ _ _ r1 ?_
    refine pm_keeps_ite4 _ pm _ _ _ r1 ?_
    refine pm_keeps_ite4 _ pm _ _ _ (r2 _ _) ?_
    refine pm_keeps_ite4 _ pm _ _ _ (r2 _ _) ?_
    refine pm_keeps_ite4 _ pm _ _ _ (r3 _ _ _ _) ?_
    refine pm_keeps_ite4 _ pm _ _ _ (r3 _ _ _ _) ?_
    exact pm_keeps_trans _ _ _ _ (r3 _ _ _ _) (ih _ _ _ _)

theorem fram_kvs_scan_loop_keeps (K : Kconfig) (kvs : fram_kvs_t) (p : fram_partition_t)
    (key : List Nat) :
    ∀ (fuel : Nat) (pm : fram_pm_t) (off : Nat) (st : kvs_scan_t) (kb : List Nat),
      PmKeeps kvs.part pm (fram_kvs_scan_loop K kvs p key fuel pm off st kb).2.2 := by
  intro fuel
  induction fuel with
  | zero => intro pm _ _ _; exact pm_keeps_refl _ _
  | succ fuel ih =>
    intro pm off st kb
    have r1 : PmKeeps kvs.part pm (fram_kvs_read_header kvs pm off).2.2 :=
      fram_pm_read_keeps _ _ _ _
    have r2 := fun kl vl => pm_keeps_trans _ _ _ _ r1
      (show PmKeeps kvs.part (fram_kvs_read_header kvs pm off).2.2
        (fram_kvs_read_commit kvs (fram_kvs_read_header kvs pm off).2.2 off kl vl).2.2 from
          fram_pm_read_keeps _ _ _ _)
    have r3 := fun kl vl hdr kb => pm_keeps_trans _ _ _ _ (r2 kl vl)
      (fram_kvs_compute_crc_keeps kvs
        (fram_kvs_read_commit kvs (fram_kvs_read_header kvs pm off).2.2 off kl vl).2.2 off hdr kb)
    unfold fram_kvs_scan_loop
    simp only
    refine pm_keeps_ite3 _ pm _ _ _ ?_ (pm_keeps_refl _ _)
    refine pm_keeps_ite3 _ pm _ _ _ r1 ?_
    refine pm_keeps_ite3 _ pm _ _ _ r1 ?_
    refine pm_keeps_ite3 _ pm _ _ _ r1 ?_
    refine pm_keeps_ite3 _ pm _ _ _ (r2 _ _) ?_
    refine pm_keeps_ite3 _ pm _ _ _ (r2 _ _) ?_
    refine pm_keeps_ite3 _ pm _ _ _ (r3 _ _ _ _) ?_
    refine pm_keeps_ite3 _ pm _ _ _ (r3 _ _ _ _) ?_
    exact pm_keeps_trans _ _ _ _ (r3 _ _ _ _) (ih _ _ _ _)

theorem fram_kvs_scan_keeps (K : Kconfig) (kvs : fram_kvs_t) (pm : fram_pm_t)
    (key : List Nat) : PmKeeps kvs.part pm (fram_kvs_scan K kvs pm key).2.2 := by
  unfold fram_kvs_scan
  cases hp : kvs.part with
  | none => exact pm_keeps_refl _ _
  | some p =>
    simp only
    have hl := fram_kvs_scan_loop_keeps K kvs p key (p.size + 1) pm 0
      { found := false, deleted := false, last_hdr := kvs_header_zero, last_offset := 0 } []
    rw [hp] at hl
    refine pm_keeps_ite3 _ pm _ _ _ hl ?_
    exact pm_keeps_ite3 _ pm _ _ _ hl hl

/-- The function `fram_kvs_init` keeps the media. -/
theorem fram_kvs_init_keeps (K : Kconfig) (pm : fram_pm_t) (cfg : fram_kvs_config_t) :
    PmKeeps (fram_pm_find pm cfg.partition_name) pm (fram_kvs_init K pm cfg).2.2 := by
  unfold fram_kvs_init
  simp only
  cases fram_pm_find pm cfg.partition_name with
  | none => exact pm_keeps_refl _ _
  | some p =>
    simp only [fram_kvs_find_end]
    have hl := fram_kvs_find_end_loop_keeps K
      { part := some p, magic := cfg.magic, write_offset := 0, next_seq := 0, ready := false
        mutex := SemaphoreHandle_t.free } p (p.size + 1) pm 0 0 []
    generalize fram_kvs_find_end_loop K _ p (p.size + 1) pm 0 0 [] = r at hl ⊢
    obtain ⟨e, o, n, pm1⟩ := r
    cases e <;> exact hl

/-- The functions `fram_kvs_get`, `fram_kvs_exists` and `fram_kvs_get_len`
keep the media. -/
theorem fram_kvs_read_keeps (K : Kconfig) (kvs : fram_kvs_t) (pm : fram_pm_t)
    (key buf : List Nat) (len : Nat) :
    PmKeeps kvs.part pm (fram_kvs_get K kvs pm key buf len).2.2.2 ∧
    PmKeeps kvs.part pm (fram_kvs_exists K kvs pm key).2 ∧
    PmKeeps kvs.part pm (fram_kvs_get_len K kvs pm key len).2.2 := by
  have hs := fram_kvs_scan_keeps K kvs pm key
  have R := fun off n => pm_keeps_trans _ _ _ _ hs
    (fram_pm_read_keeps (fram_kvs_scan K kvs pm key).2.2 kvs.part off n)
  refine ⟨?_, ?_, ?_⟩
  · unfold fram_kvs_get
    simp only
    repeat' split
    all_goals first
      | exact pm_keeps_refl _ _
      | exact hs
      | exact R _ _
  · unfold fram_kvs_exists
    simp only
    repeat' split
    all_goals first
      | exact pm_keeps_refl _ _
      | exact hs
  · unfold fram_kvs_get_len
    simp only
    repeat' split
    all_goals first
      | exact pm_keeps_refl _ _
      | exact hs

/-! ## The table that `fram_pm_init` accepts -/

/-- A successful `fram_pm_init` holds the entries it was given; each lies
inside the device and no two of them overlap. -/
theorem pm_init_ok_table (pm0 : fram_pm_t) (dev : fram_dev_t) (parts : List fram_partition_t)
    (count : Nat) (hlt : dev.hal.size_bytes < U32)
    (hinit : (fram_pm_init pm0 dev parts count).1 = ESP_OK) :
    (fram_pm_init pm0 dev parts count).2
      = { dev := dev, partitions := parts.take count, partition_count := count,
          initialized := true } ∧
    (∀ e, e ∈ parts.take count → spec_entry_ok dev.hal.size_bytes e) ∧
    (parts.take count).Pairwise spec_ranges_disjoint := by
  have hsz : fram_dev_get_size dev = dev.hal.size_bytes := rfl
  by_cases hc : count = 0 ∨ count > FRAM_PART_MAX
  · rw [fram_pm_init, if_pos hc] at hinit
    exact esp_err_t.noConfusion hinit
  by_cases hz : fram_dev_get_size dev = 0
  · rw [fram_pm_init, if_neg hc] at hinit
    simp only [hz, if_true] at hinit
    exact esp_err_t.noConfusion hinit
  obtain ⟨c1, c2⟩ := pm_init_copy_spec (fram_dev_get_size dev) (parts.take count) []
  by_cases hcopy : (fram_pm_init_copy (fram_dev_get_size dev) (parts.take count) []).1 = ESP_OK
  · have hall := c1.mp hcopy
    have hl := c2 hcopy
    rw [List.nil_append] at hl
    have hov := pm_init_overlap_spec (fram_dev_get_size dev) (by rw [hsz]; exact hlt)
      (parts.take count) hall
    by_cases ho : fram_pm_init_overlap (parts.take count) = true
    · have e : fram_pm_init pm0 dev parts count = (ESP_ERR_INVALID_STATE,
          { dev := dev, partitions := parts.take count, partition_count := 0,
            initialized := false }) := by
        rw [fram_pm_init, if_neg hc, if_neg hz]
        simp only [hcopy, hl, ho, ne_eq, not_true_eq_false, if_false, if_true]
      rw [e] at hinit
      exact esp_err_t.noConfusion hinit
    · have ho2 : fram_pm_init_overlap (parts.take count) = false := by
        simpa using ho
      have e : fram_pm_init pm0 dev parts count = (ESP_OK,
          { dev := dev, partitions := parts.take count, partition_count := count,
            initialized := true }) := by
        rw [fram_pm_init, if_neg hc, if_neg hz]
        simp only [hcopy, hl, ho2, ne_eq, not_true_eq_false, if_false, Bool.false_eq_true]
      rw [e]
      exact ⟨rfl, hall, hov.mp ho2⟩
  · have e : (fram_pm_init pm0 dev parts count).1 =
        (fram_pm_init_copy (fram_dev_get_size dev) (parts.take count) []).1 := by
      rw [fram_pm_init, if_neg hc, if_neg hz]
      simp only [hcopy, ne_eq, not_false_eq_true, if_true]
    rw [e] at hinit
    exact absurd hinit hcopy

/-- Two entries at different positions of a table without overlaps occupy
disjoint ranges. -/
theorem table_entries_disjoint (l : List fram_partition_t)
    (h : l.Pairwise spec_ranges_disjoint) (i j : Nat) (p q : fram_partition_t)
    (hij : i ≠ j) (hp : l.get? i = some p) (hq : l.get? j = some q) :
    spec_ranges_disjoint p q := by
  rw [List.get?_eq_getElem?] at hp hq
  obtain ⟨hi, ep⟩ := List.getElem?_eq_some.mp hp
  obtain ⟨hj, eq⟩ := List.getElem?_eq_some.mp hq
  have hpw := List.pairwise_iff_getElem.mp h
  rcases Nat.lt_or_gt_of_ne hij with hlt | hgt
  · have := hpw i j hi hj hlt
    rw [ep, eq] at this
    exact this
  · have := hpw j i hj hi hgt
    rw [ep, eq] at this
    rcases this with h1 | h1
    · exact Or.inr h1
    · exact Or.inl h1

/-- A step that keeps to the partition `p` keeps what lies outside it. -/
theorem pm_keeps_isolated (pm pm1 : fram_pm_t) (p : fram_partition_t)
    (hin : p.offset + p.size ≤ pm.dev.hal.size_bytes) (hsz : pm.dev.hal.size_bytes < U32)
    (h : PmKeeps (some p) pm pm1) : PartIsolated p pm pm1 :=
  ⟨h.1, h.2.1, h.2.2.1, h.2.2.2.1, h.2.2.2.2 p rfl hin hsz⟩

/-- C38. Partition isolation. Let `pm` be any later state of a partition
manager that `fram_pm_init` initialised on a device of less than 2^32 bytes
(same table, same device size, any device state), and `p` an entry of its
table. Then `p` lies inside the device and its range is disjoint from that of
every entry at another position. `fram_pm_write` through `p` keeps every device
byte outside `[p.offset + offset, p.offset + offset + len)`, and changes no
byte at all unless `offset + len ≤ p.size`. `fram_pm_read`, `fram_pm_write`
and `fram_pm_erase` through `p`, and every operation of a ring, a slot store or
a key/value store bound to `p` (init, append, peeks, iterate and clear; init,
save, load, peek_len and clear; init, set, delete, get, exists and get_len),
whether it succeeds or fails, leave the table, the device size and every device
byte outside `[p.offset, p.offset + p.size)` as they were; so no byte of another
entry of the table changes. -/
theorem partition_isolation (K : Kconfig) (pm0 : fram_pm_t) (dev : fram_dev_t)
    (parts : List fram_partition_t) (count : Nat) (pm : fram_pm_t) (p : fram_partition_t)
    (hlt : dev.hal.size_bytes < U32)
    (hinit : (fram_pm_init pm0 dev parts count).1 = ESP_OK)
    (htab : pm.partitions = (fram_pm_init pm0 dev parts count).2.partitions)
    (hdev : pm.dev.hal.size_bytes = dev.hal.size_bytes)
    (hp : p ∈ pm.partitions) :
    (p.offset + p.size ≤ pm.dev.hal.size_bytes ∧
     ∀ i j q, i ≠ j → pm.partitions.get? i = some p → pm.partitions.get? j = some q →
       spec_ranges_disjoint p q) ∧
    (∀ offset data,
      (∀ a, a < p.offset + offset ∨ p.offset + offset + data.length ≤ a →
        (fram_pm_write pm (some p) offset data).2.dev.hal.ctx.buffer a
          = pm.dev.hal.ctx.buffer a) ∧
      (¬ offset + data.length ≤ p.size →
        (fram_pm_write pm (some p) offset data).2.dev.hal.ctx.buffer
          = pm.dev.hal.ctx.buffer)) ∧
    ((∀ offset len, PartIsolated p pm (fram_pm_read pm (some p) offset len).2.2) ∧
     (∀ offset data, PartIsolated p pm (fram_pm_write pm (some p) offset data).2) ∧
     PartIsolated p pm (fram_pm_erase pm (some p)).2) ∧
    ((∀ ring0 cfg, fram_pm_find pm cfg.partition_name = some p →
        PartIsolated p pm (fram_ring_init K ring0 pm cfg).2.2) ∧
     (∀ ring, ring.part = some p →
        (∀ payload now, PartIsolated p pm (fram_ring_append ring pm payload now).2.2) ∧
        (∀ out, PartIsolated p pm (fram_ring_peek_oldest ring pm out).2.2) ∧
        (∀ out, PartIsolated p pm (fram_ring_peek_newest ring pm out).2.2) ∧
        (∀ len, PartIsolated p pm (fram_ring_peek_oldest_len ring pm len).2.2) ∧
        (∀ len, PartIsolated p pm (fram_ring_peek_newest_len ring pm len).2.2) ∧
        (∀ (cb : Option (fram_ring_iter_fn (List Nat))) ctx buf,
          PartIsolated p pm (fram_ring_iterate K ring pm cb ctx buf).2.2) ∧
        PartIsolated p pm (fram_ring_clear ring pm).2.2)) ∧
    ((∀ vs0 cfg, fram_pm_find pm cfg.partition_name = some p →
        PartIsolated p pm (fram_vslot_init K vs0 pm cfg).2.2) ∧
     (∀ vs, vs.part = some p →
        (∀ payload now, PartIsolated p pm (fram_vslot_save vs pm payload now).2.2) ∧
        (∀ out, PartIsolated p pm (fram_vslot_load vs pm out).2.2) ∧
        (∀ len, PartIsolated p pm (fram_vslot_peek_len vs pm len).2.2) ∧
        PartIsolated p pm (fram_vslot_clear vs pm).2.2)) ∧
    ((∀ cfg, fram_pm_find pm cfg.partition_name = some p →
        PartIsolated p pm (fram_kvs_init K pm cfg).2.2) ∧
     (∀ kvs, kvs.part = some p →
        (∀ key value, PartIsolated p pm (fram_kvs_set K kvs pm key value).2.2) ∧
        (∀ key, PartIsolated p pm (fram_kvs_delete kvs pm key).2.2) ∧
        (∀ key buf len, PartIsolated p pm (fram_kvs_get K kvs pm key buf len).2.2.2) ∧
        (∀ key, PartIsolated p pm (fram_kvs_exists K kvs pm key).2) ∧
        (∀ key len, PartIsolated p pm (fram_kvs_get_len K kvs pm key len).2.2))) ∧
    (∀ pm1, PartIsolated p pm pm1 →
      ∀ i j q, i ≠ j → pm.partitions.get? i = some p → pm.partitions.get? j = some q →
        ∀ b, q.offset ≤ b → b < q.offset + q.size →
          pm1.dev.hal.ctx.buffer b = pm.dev.hal.ctx.buffer b) := by
  obtain ⟨e, hall, hpw⟩ := pm_init_ok_table pm0 dev parts count hlt hinit
  rw [e] at htab
  have htab2 : pm.partitions = parts.take count := htab
  have hok := hall p (by rw [← htab2]; exact hp)
  have hin : p.offset + p.size ≤ pm.dev.hal.size_bytes := by
    rw [hdev]
    exact hok.2.2.2
  have hsz : pm.dev.hal.size_bytes < U32 := by
    rw [hdev]
    exact hlt
  have hdis : ∀ i j q, i ≠ j → pm.partitions.get? i = some p → pm.partitions.get? j = some q →
      spec_ranges_disjoint p q := by
    intro i j q hij h1 h2
    rw [htab2] at h1 h2
    exact table_entries_disjoint _ hpw i j p q hij h1 h2
  have I := fun pm1 (h : PmKeeps (some p) pm pm1) => pm_keeps_isolated pm pm1 p hin hsz h
  refine ⟨⟨hin, hdis⟩, fun offset data => ?_, ⟨fun offset len => I _ (fram_pm_read_keeps _ _ _ _),
    fun offset data => I _ (fram_pm_write_keeps _ _ _ _), I _ (fram_pm_erase_keeps _ _)⟩,
    ⟨fun ring0 cfg hf => I _ (by rw [← hf]; exact fram_ring_init_keeps K ring0 pm cfg),
     fun ring hr => ?_⟩,
    ⟨fun vs0 cfg hf => I _ (by rw [← hf]; exact fram_vslot_init_keeps K vs0 pm cfg),
     fun vs hr => ?_⟩,
    ⟨fun cfg hf => I _ (by rw [← hf]; exact fram_kvs_init_keeps K pm cfg),
     fun kvs hr => ?_⟩, ?_⟩
  · obtain ⟨_, _, _, _, a5, a6⟩ := fram_pm_write_range pm p offset data hin hsz
    exact ⟨a5, a6⟩
  · refine ⟨fun payload now => I _ (by rw [← hr]; exact fram_ring_append_keeps _ _ _ _),
      fun out => I _ (by rw [← hr]; exact (fram_ring_peek_keeps ring pm out none).1),
      fun out => I _ (by rw [← hr]; exact (fram_ring_peek_keeps ring pm out none).2.1),
      fun len => I _ (by
        rw [← hr]
        exact (fram_ring_peek_keeps ring pm
          { payload := none, len := none, seq := none, ts_us := none } len).2.2.1),
      fun len => I _ (by
        rw [← hr]
        exact (fram_ring_peek_keeps ring pm
          { payload := none, len := none, seq := none, ts_us := none } len).2.2.2),
      fun cb ctx buf => I _ (by rw [← hr]; exact fram_ring_iterate_keeps K ring pm cb ctx buf),
      I _ (by rw [← hr]; exact fram_ring_clear_keeps _ _)⟩
  · refine ⟨fun payload now => I _ (by rw [← hr]; exact fram_vslot_save_keeps _ _ _ _),
      fun out => I _ (by rw [← hr]; exact (fram_vslot_read_keeps vs pm out none).1),
      fun len => I _ (by
        rw [← hr]
        exact (fram_vslot_read_keeps vs pm { payload := none, len := none } len).2.1),
      I _ (by
        rw [← hr]
        exact (fram_vslot_read_keeps vs pm { payload := none, len := none } none).2.2)⟩
  · refine ⟨fun key value => I _ (by rw [← hr]; exact (fram_kvs_write_keeps K kvs pm key value).1),
      fun key => I _ (by rw [← hr]; exact (fram_kvs_write_keeps K kvs pm key []).2),
      fun key buf len => I _ (by rw [← hr]; exact (fram_kvs_read_keeps K kvs pm key buf len).1),
      fun key => I _ (by rw [← hr]; exact (fram_kvs_read_keeps K kvs pm key [] 0).2.1),
      fun key len => I _ (by rw [← hr]; exact (fram_kvs_read_keeps K kvs pm key [] len).2.2)⟩
  · intro pm1 h1 i j q hij hpi hqj b hb1 hb2
    have hd := hdis i j q hij hpi hqj
    apply h1.2.2.2.2 b
    rcases hd with hd | hd
    · exact Or.inr (by omega)
    · exact Or.inl (by omega)

/-- Witness for C38: the table of `setup_partitions` in `test_fram.c` on the
32 KiB mock device, the entry `"ring"` and the example manager; a write of two
bytes at offset 4 of the partition. -/
theorem partition_isolation_witness :
    (mock_dev (fun _ => 0xFF) 32768).hal.size_bytes < U32 ∧
    (fram_pm_init example_pm0 (mock_dev (fun _ => 0xFF) 32768) example_parts 3).1 = ESP_OK ∧
    example_pm.partitions
      = (fram_pm_init example_pm0 (mock_dev (fun _ => 0xFF) 32768) example_parts 3).2.partitions ∧
    example_ring_part ∈ example_pm.partitions ∧
    PartIsolated example_ring_part example_pm
      (fram_pm_write example_pm (some example_ring_part) 4 [1, 2]).2 ∧
    PartIsolated example_ring_part example_pm (fram_pm_erase example_pm (some example_ring_part)).2 :=
  have h1 : (mock_dev (fun _ => 0xFF) 32768).hal.size_bytes < U32 := by decide
  have h2 : (fram_pm_init example_pm0 (mock_dev (fun _ => 0xFF) 32768) example_parts 3).1
      = ESP_OK := by decide
  have h3 : example_pm.partitions
      = (fram_pm_init example_pm0 (mock_dev (fun _ => 0xFF) 32768) example_parts 3).2.partitions := by
    decide
  have h4 : example_ring_part ∈ example_pm.partitions := by decide
  have h := partition_isolation example_K example_pm0 (mock_dev (fun _ => 0xFF) 32768)
    example_parts 3 example_pm example_ring_part h1 h2 h3 rfl h4
  ⟨h1, h2, h3, h4, h.2.2.1.2.1 4 [1, 2], h.2.2.1.2.2⟩

/-! ## Key/value store: what a successful read says about its range -/

/-- A read the partition layer lets through lies inside the partition. -/
theorem pm_read_ok_fits (pm : fram_pm_t) (p : fram_partition_t) (offset len : Nat)
    (h : (fram_pm_read pm (some p) offset len).1 = ESP_OK) :
    len = 0 ∨ offset + len ≤ p.size := by
  unfold fram_pm_read at h
  simp only at h
  by_cases c1 : (!pm.initialized) = true
  · rw [if_pos c1] at h
    exact esp_err_t.noConfusion h
  · rw [if_neg c1] at h
    by_cases c2 : (!fram_pm_is_valid_range p offset len) = true
    · rw [if_pos c2] at h
      exact esp_err_t.noConfusion h
    · exact fram_pm_valid_range_fits p offset len c2

/-- The value loop of `fram_kvs_compute_crc` on any device: a property of the
partition manager that reads keep is kept, and the loop returns `ESP_OK` only
when the whole value lies inside the partition. -/
theorem kvs_crc_loop_fits (kvs : fram_kvs_t) (p : fram_partition_t) (hp : kvs.part = some p)
    (hsz : p.size < U32) (P : fram_pm_t → Prop)
    (hP : ∀ pm o l, P pm → P (fram_pm_read pm (some p) o l).2.2) :
    ∀ (fuel : Nat) (pm : fram_pm_t) (vo rem crc : Nat), rem ≤ fuel → P pm →
      P (fram_kvs_crc_loop kvs fuel pm vo rem crc).2.2 ∧
      ((fram_kvs_crc_loop kvs fuel pm vo rem crc).1 = ESP_OK → rem = 0 ∨ vo + rem ≤ p.size) := by
  intro fuel
  induction fuel with
  | zero =>
    intro pm vo rem crc h h0
    exact ⟨h0, fun _ => Or.inl (by omega)⟩
  | succ f ih =>
    intro pm vo rem crc h h0
    rw [fram_kvs_crc_loop]
    by_cases hr : rem > 0
    swap
    · rw [if_neg hr]
      exact ⟨h0, fun _ => Or.inl (by omega)⟩
    rw [if_pos hr, hp]
    simp only
    obtain ⟨chunk, hchunk⟩ : ∃ c, c = (if rem > FRAM_KVS_CRC_CHUNK then FRAM_KVS_CRC_CHUNK
      else rem) := ⟨_, rfl⟩
    rw [← hchunk]
    have hc1 : 1 ≤ chunk ∧ chunk ≤ rem := by
      rw [hchunk]
      have h64 : FRAM_KVS_CRC_CHUNK = 64 := rfl
      rw [h64]
      split_ifs <;> omega
    by_cases c1 : (fram_pm_read pm (some p) vo chunk).1 ≠ ESP_OK
    · rw [if_pos c1]
      exact ⟨hP _ _ _ h0, fun e => absurd e c1⟩
    · rw [if_neg c1]
      have hfit := pm_read_ok_fits pm p vo chunk (not_not.mp c1)
      have hm : (vo + chunk) % U32 = vo + chunk := Nat.mod_eq_of_lt (by omega)
      rw [hm]
      obtain ⟨i1, i2⟩ := ih (fram_pm_read pm (some p) vo chunk).2.2 (vo + chunk) (rem - chunk)
        (fram_crc32_le crc (fram_pm_read pm (some p) vo chunk).2.1) (by omega) (hP _ _ _ h0)
      refine ⟨i1, fun e => Or.inr ?_⟩
      have := i2 e
      omega

/-- The function `fram_kvs_compute_crc` on any device: it returns `ESP_OK` only
when the key and the value lie inside the partition. -/
theorem kvs_compute_crc_fits (kvs : fram_kvs_t) (p : fram_partition_t) (hp : kvs.part = some p)
    (hsz : p.size < U32) (P : fram_pm_t → Prop)
    (hP : ∀ pm o l, P pm → P (fram_pm_read pm (some p) o l).2.2)
    (pm : fram_pm_t) (off : Nat) (hdr : fram_kvs_header_t) (kb : List Nat) (h0 : P pm) :
    P (fram_kvs_compute_crc kvs pm off hdr kb).2.2 ∧
    ((fram_kvs_compute_crc kvs pm off hdr kb).1 = ESP_OK →
      (hdr.key_len = 0 ∨ (off + 20) % U32 + hdr.key_len ≤ p.size) ∧
      (hdr.value_len = 0 ∨ (off + 20 + hdr.key_len) % U32 + hdr.value_len ≤ p.size)) := by
  have h20 : KVS_HEADER_SIZE = 20 := rfl
  unfold fram_kvs_compute_crc
  rw [hp, h20]
  simp only
  by_cases ck : hdr.key_len > 0
  · simp only [if_pos ck]
    by_cases c1 : (fram_pm_read pm (some p) ((off + 20) % U32) hdr.key_len).1 ≠ ESP_OK
    · rw [if_pos c1]
      exact ⟨hP _ _ _ h0, fun e => absurd e c1⟩
    · rw [if_neg c1]
      have hfit := pm_read_ok_fits pm p _ _ (not_not.mp c1)
      obtain ⟨i1, i2⟩ := kvs_crc_loop_fits kvs p hp hsz P hP hdr.value_len
        (fram_pm_read pm (some p) ((off + 20) % U32) hdr.key_len).2.2
        ((off + 20 + hdr.key_len) % U32) hdr.value_len
        (fram_crc32_le (fram_crc32_le 0 hdr.head_bytes)
          (List.take hdr.key_len
            ((fram_pm_read pm (some p) ((off + 20) % U32) hdr.key_len).2.1 ++
              List.drop (fram_pm_read pm (some p) ((off + 20) % U32) hdr.key_len).2.1.length kb)))
        (Nat.le_refl _) (hP _ _ _ h0)
      split_ifs with c2 c3
      · exact ⟨i1, fun e => absurd e c2⟩
      · exact ⟨i1, fun e => e.elim⟩
      · exact ⟨i1, fun _ => ⟨hfit, i2 (not_not.mp c2)⟩⟩
  · simp only [if_neg ck]
    rw [if_neg (fun h => h rfl)]
    obtain ⟨i1, i2⟩ := kvs_crc_loop_fits kvs p hp hsz P hP hdr.value_len pm
      ((off + 20 + hdr.key_len) % U32) hdr.value_len (fram_crc32_le 0 hdr.head_bytes)
      (Nat.le_refl _) h0
    split_ifs with c2 c3
    · exact ⟨i1, fun e => absurd e c2⟩
    · exact ⟨i1, fun e => e.elim⟩
    · exact ⟨i1, fun _ => ⟨Or.inl (by omega), i2 (not_not.mp c2)⟩⟩

/-! ## Key/value store: one iteration of the scans on any device -/

/-- The arithmetic of an iteration that goes on: when the header, the commit
byte, the key and the value were read from inside the partition, no 32-bit sum
of the iteration wraps and the record ends inside the partition. -/
theorem kvs_step_arith (size off kl vl : Nat) (hsz : size < 4294967296) (hk : 1 ≤ kl)
    (f1 : off + 20 ≤ size) (f2 : (off + 20 + kl + vl) % 4294967296 + 1 ≤ size)
    (f3 : kl = 0 ∨ (off + 20) % 4294967296 + kl ≤ size)
    (f4 : vl = 0 ∨ (off + 20 + kl) % 4294967296 + vl ≤ size) :
    off + (20 + kl + vl + 1) ≤ size := by
  have e1 : (off + 20) % 4294967296 = off + 20 := Nat.mod_eq_of_lt (by omega)
  rw [e1] at f3
  have e2 : (off + 20 + kl) % 4294967296 = off + 20 + kl := Nat.mod_eq_of_lt (by omega)
  rw [e2] at f4
  have e3 : (off + 20 + kl + vl) % 4294967296 = off + 20 + kl + vl :=
    Nat.mod_eq_of_lt (by omega)
  rw [e3] at f2
  omega

/-- One iteration of the loop of `fram_kvs_scan` on any device, at an offset
inside a partition of less than `2^32` bytes. Either the loop is left in this
iteration, with the state untouched, or the iteration read a record that ends
inside the partition and the loop goes on behind it; a property of the
partition manager that reads keep is kept. -/
theorem kvs_scan_iter_step (K : Kconfig) (kvs : fram_kvs_t) (p : fram_partition_t) (key : List Nat)
    (hp : kvs.part = some p) (hsz : p.size < U32) (P : fram_pm_t → Prop)
    (hP : ∀ pm o l, P pm → P (fram_pm_read pm (some p) o l).2.2)
    (pm : fram_pm_t) (off : Nat) (st : kvs_scan_t) (kb : List Nat) (h0 : P pm) :
    (∃ e pm1, P pm1 ∧
      ∀ fuel, fram_kvs_scan_loop K kvs p key (fuel + 1) pm off st kb = (e, st, pm1)) ∨
    (off + (20 + (fram_kvs_read_header kvs pm off).2.1.key_len
        + (fram_kvs_read_header kvs pm off).2.1.value_len + 1) ≤ p.size ∧
      1 ≤ (fram_kvs_read_header kvs pm off).2.1.key_len ∧
      ∃ pm1 st1 kb1, P pm1 ∧
        ∀ fuel, fram_kvs_scan_loop K kvs p key (fuel + 1) pm off st kb
          = fram_kvs_scan_loop K kvs p key fuel pm1
              (off + (20 + (fram_kvs_read_header kvs pm off).2.1.key_len
                + (fram_kvs_read_header kvs pm off).2.1.value_len + 1)) st1 kb1) := by
  have h20 : KVS_HEADER_SIZE = 20 := rfl
  by_cases c0 : (off + KVS_HEADER_SIZE + 1) % U32 ≤ p.size
  swap
  · exact Or.inl ⟨ESP_OK, pm, h0, fun fuel => by rw [fram_kvs_scan_loop, if_neg c0]⟩
  obtain ⟨rh, hrh⟩ : ∃ rh, fram_kvs_read_header kvs pm off = rh := ⟨_, rfl⟩
  have hrh1 : rh.1 = (fram_pm_read pm (some p) off 20).1 := by
    rw [← hrh, fram_kvs_read_header, hp]
    rfl
  have hrh2 : P rh.2.2 := by
    rw [← hrh, fram_kvs_read_header, hp]
    exact hP _ _ _ h0
  rw [hrh]
  by_cases c1 : rh.1 ≠ ESP_OK
  · refine Or.inl ⟨rh.1, rh.2.2, hrh2, fun fuel => ?_⟩
    rw [fram_kvs_scan_loop, if_pos c0]
    simp only [hrh]
    rw [if_pos c1]
  by_cases c2 : (!fram_kvs_header_valid K kvs rh.2.1) = true
  · refine Or.inl ⟨ESP_OK, rh.2.2, hrh2, fun fuel => ?_⟩
    rw [fram_kvs_scan_loop, if_pos c0]
    simp only [hrh]
    rw [if_neg c1, if_pos c2]
  by_cases c3 : off > p.size ∨ fram_kvs_record_size rh.2.1 > p.size ∨
      (off + fram_kvs_record_size rh.2.1) % U32 > p.size
  · refine Or.inl ⟨ESP_OK, rh.2.2, hrh2, fun fuel => ?_⟩
    rw [fram_kvs_scan_loop, if_pos c0]
    simp only [hrh]
    rw [if_neg c1, if_neg c2, if_pos c3]
  obtain ⟨rc, hrc⟩ : ∃ rc, fram_kvs_read_commit kvs rh.2.2 off rh.2.1.key_len rh.2.1.value_len
    = rc := ⟨_, rfl⟩
  have hrc1 : rc.1 = (fram_pm_read rh.2.2 (some p)
      ((off + 20 + rh.2.1.key_len + rh.2.1.value_len) % U32) 1).1 := by
    rw [← hrc, fram_kvs_read_commit, hp]
    rfl
  have hrc2 : P rc.2.2 := by
    rw [← hrc, fram_kvs_read_commit, hp]
    exact hP _ _ _ hrh2
  by_cases c4 : rc.1 ≠ ESP_OK
  · refine Or.inl ⟨rc.1, rc.2.2, hrc2, fun fuel => ?_⟩
    rw [fram_kvs_scan_loop, if_pos c0]
    simp only [hrh, hrc]
    rw [if_neg c1, if_neg c2, if_neg c3, if_pos c4]
  by_cases c5 : rc.2.1 ≠ FRAM_KVS_COMMIT
  · refine Or.inl ⟨ESP_OK, rc.2.2, hrc2, fun fuel => ?_⟩
    rw [fram_kvs_scan_loop, if_pos c0]
    simp only [hrh, hrc]
    rw [if_neg c1, if_neg c2, if_neg c3, if_neg c4, if_pos c5]
  obtain ⟨cc, hcc⟩ : ∃ cc, fram_kvs_compute_crc kvs rc.2.2 off rh.2.1 kb = cc := ⟨_, rfl⟩
  obtain ⟨hcc2, hcc3⟩ := kvs_compute_crc_fits kvs p hp hsz P hP rc.2.2 off rh.2.1 kb hrc2
  rw [hcc] at hcc2 hcc3
  by_cases c6 : cc.1 = ESP_ERR_INVALID_CRC
  · refine Or.inl ⟨ESP_OK, cc.2.2, hcc2, fun fuel => ?_⟩
    rw [fram_kvs_scan_loop, if_pos c0]
    simp only [hrh, hrc, hcc]
    rw [if_neg c1, if_neg c2, if_neg c3, if_neg c4, if_neg c5, if_pos c6]
  by_cases c7 : cc.1 ≠ ESP_OK
  · refine Or.inl ⟨cc.1, cc.2.2, hcc2, fun fuel => ?_⟩
    rw [fram_kvs_scan_loop, if_pos c0]
    simp only [hrh, hrc, hcc]
    rw [if_neg c1, if_neg c2, if_neg c3, if_neg c4, if_neg c5, if_neg c6, if_pos c7]
  obtain ⟨_, hk1, _, _⟩ := kvs_valid_key_len K kvs rh.2.1 (by simpa using c2)
  have f1 : off + 20 ≤ p.size := by
    have := pm_read_ok_fits pm p off 20 (by rw [← hrh1]; exact not_not.mp c1)
    omega
  have f2 := pm_read_ok_fits rh.2.2 p _ 1 (by rw [← hrc1]; exact not_not.mp c4)
  obtain ⟨f3, f4⟩ := hcc3 (not_not.mp c7)
  rw [U32_eq] at hsz f2 f3 f4
  have hfit := kvs_step_arith p.size off rh.2.1.key_len rh.2.1.value_len hsz hk1 f1
    (by omega) f3 f4
  have hrs : fram_kvs_record_size rh.2.1 = 20 + rh.2.1.key_len + rh.2.1.value_len + 1 := by
    unfold fram_kvs_record_size
    rw [h20, U32_eq]
    exact Nat.mod_eq_of_lt (by omega)
  have hno : (off + fram_kvs_record_size rh.2.1) % U32
      = off + (20 + rh.2.1.key_len + rh.2.1.value_len + 1) := by
    rw [hrs, U32_eq]
    exact Nat.mod_eq_of_lt (by omega)
  refine Or.inr ⟨hfit, hk1, cc.2.2,
    (if rh.2.1.key_len = key.length ∧ cc.2.1.take key.length = key then
      { found := true
        deleted := decide (rh.2.1.flags &&& FRAM_KVS_FLAG_DELETED ≠ 0)
        last_hdr := rh.2.1
        last_offset := off }
    else st), cc.2.1, hcc2, fun fuel => ?_⟩
  rw [fram_kvs_scan_loop, if_pos c0]
  simp only [hrh, hrc, hcc]
  rw [if_neg c1, if_neg c2, if_neg c3, if_neg c4, if_neg c5, if_neg c6, if_neg c7, hno]

/-- One iteration of the loop of `fram_kvs_find_end` on any device, at an offset
inside a partition of less than `2^32` bytes. Either the loop is left in this
iteration, with the offset and the sequence number untouched, or the iteration read a record that ends
inside the partition and the loop goes on behind it; a property of the
partition manager that reads keep is kept. -/
theorem kvs_find_end_iter_step (K : Kconfig) (kvs : fram_kvs_t) (p : fram_partition_t)
    (hp : kvs.part = some p) (hsz : p.size < U32) (P : fram_pm_t → Prop)
    (hP : ∀ pm o l, P pm → P (fram_pm_read pm (some p) o l).2.2)
    (pm : fram_pm_t) (off : Nat) (ns : Nat) (kb : List Nat) (h0 : P pm) :
    (∃ e pm1, P pm1 ∧
      ∀ fuel, fram_kvs_find_end_loop K kvs p (fuel + 1) pm off ns kb = (e, off, ns, pm1)) ∨
    (off + (20 + (fram_kvs_read_header kvs pm off).2.1.key_len
        + (fram_kvs_read_header kvs pm off).2.1.value_len + 1) ≤ p.size ∧
      1 ≤ (fram_kvs_read_header kvs pm off).2.1.key_len ∧
      ∃ pm1 kb1, P pm1 ∧
        ∀ fuel, fram_kvs_find_end_loop K kvs p (fuel + 1) pm off ns kb
          = fram_kvs_find_end_loop K kvs p fuel pm1
              (off + (20 + (fram_kvs_read_header kvs pm off).2.1.key_len
                + (fram_kvs_read_header kvs pm off).2.1.value_len + 1))
              (kvs_seq_upd ns (fram_kvs_read_header kvs pm off).2.1.seq) kb1) := by
  have h20 : KVS_HEADER_SIZE = 20 := rfl
  by_cases c0 : (off + KVS_HEADER_SIZE + 1) % U32 ≤ p.size
  swap
  · exact Or.inl ⟨ESP_OK, pm, h0, fun fuel => by rw [fram_kvs_find_end_loop, if_neg c0]⟩
  obtain ⟨rh, hrh⟩ : ∃ rh, fram_kvs_read_header kvs pm off = rh := ⟨_, rfl⟩
  have hrh1 : rh.1 = (fram_pm_read pm (some p) off 20).1 := by
    rw [← hrh, fram_kvs_read_header, hp]
    rfl
  have hrh2 : P rh.2.2 := by
    rw [← hrh, fram_kvs_read_header, hp]
    exact hP _ _ _ h0
  rw [hrh]
  by_cases c1 : rh.1 ≠ ESP_OK
  · refine Or.inl ⟨rh.1, rh.2.2, hrh2, fun fuel => ?_⟩
    rw [fram_kvs_find_end_loop, if_pos c0]
    simp only [hrh]
    rw [if_pos c1]
  by_cases c2 : (!fram_kvs_header_valid K kvs rh.2.1) = true
  · refine Or.inl ⟨ESP_OK, rh.2.2, hrh2, fun fuel => ?_⟩
    rw [fram_kvs_find_end_loop, if_pos c0]
    simp only [hrh]
    rw [if_neg c1, if_pos c2]
  by_cases c3 : off > p.size ∨ fram_kvs_record_size rh.2.1 > p.size ∨
      (off + fram_kvs_record_size rh.2.1) % U32 > p.size
  · refine Or.inl ⟨ESP_OK, rh.2.2, hrh2, fun fuel => ?_⟩
    rw [fram_kvs_find_end_loop, if_pos c0]
    simp only [hrh]
    rw [if_neg c1, if_neg c2, if_pos c3]
  obtain ⟨rc, hrc⟩ : ∃ rc, fram_kvs_read_commit kvs rh.2.2 off rh.2.1.key_len rh.2.1.value_len
    = rc := ⟨_, rfl⟩
  have hrc1 : rc.1 = (fram_pm_read rh.2.2 (some p)
      ((off + 20 + rh.2.1.key_len + rh.2.1.value_len) % U32) 1).1 := by
    rw [← hrc, fram_kvs_read_commit, hp]
    rfl
  have hrc2 : P rc.2.2 := by
    rw [← hrc, fram_kvs_read_commit, hp]
    exact hP _ _ _ hrh2
  by_cases c4 : rc.1 ≠ ESP_OK
  · refine Or.inl ⟨rc.1, rc.2.2, hrc2, fun fuel => ?_⟩
    rw [fram_kvs_find_end_loop, if_pos c0]
    simp only [hrh, hrc]
    rw [if_neg c1, if_neg c2, if_neg c3, if_pos c4]
  by_cases c5 : rc.2.1 ≠ FRAM_KVS_COMMIT
  · refine Or.inl ⟨ESP_OK, rc.2.2, hrc2, fun fuel => ?_⟩
    rw [fram_kvs_find_end_loop, if_pos c0]
    simp only [hrh, hrc]
    rw [if_neg c1, if_neg c2, if_neg c3, if_neg c4, if_pos c5]
  obtain ⟨cc, hcc⟩ : ∃ cc, fram_kvs_compute_crc kvs rc.2.2 off rh.2.1 kb = cc := ⟨_, rfl⟩
  obtain ⟨hcc2, hcc3⟩ := kvs_compute_crc_fits kvs p hp hsz P hP rc.2.2 off rh.2.1 kb hrc2
  rw [hcc] at hcc2 hcc3
  by_cases c6 : cc.1 = ESP_ERR_INVALID_CRC
  · refine Or.inl ⟨ESP_OK, cc.2.2, hcc2, fun fuel => ?_⟩
    rw [fram_kvs_find_end_loop, if_pos c0]
    simp only [hrh, hrc, hcc]
    rw [if_neg c1, if_neg c2, if_neg c3, if_neg c4, if_neg c5, if_pos c6]
  by_cases c7 : cc.1 ≠ ESP_OK
  · refine Or.inl ⟨cc.1, cc.2.2, hcc2, fun fuel => ?_⟩
    rw [fram_kvs_find_end_loop, if_pos c0]
    simp only [hrh, hrc, hcc]
    rw [if_neg c1, if_neg c2, if_neg c3, if_neg c4, if_neg c5, if_neg c6, if_pos c7]
  obtain ⟨_, hk1, _, _⟩ := kvs_valid_key_len K kvs rh.2.1 (by simpa using c2)
  have f1 : off + 20 ≤ p.size := by
    have := pm_read_ok_fits pm p off 20 (by rw [← hrh1]; exact not_not.mp c1)
    omega
  have f2 := pm_read_ok_fits rh.2.2 p _ 1 (by rw [← hrc1]; exact not_not.mp c4)
  obtain ⟨f3, f4⟩ := hcc3 (not_not.mp c7)
  rw [U32_eq] at hsz f2 f3 f4
  have hfit := kvs_step_arith p.size off rh.2.1.key_len rh.2.1.value_len hsz hk1 f1
    (by omega) f3 f4
  have hrs : fram_kvs_record_size rh.2.1 = 20 + rh.2.1.key_len + rh.2.1.value_len + 1 := by
    unfold fram_kvs_record_size
    rw [h20, U32_eq]
    exact Nat.mod_eq_of_lt (by omega)
  have hno : (off + fram_kvs_record_size rh.2.1) % U32
      = off + (20 + rh.2.1.key_len + rh.2.1.value_len + 1) := by
    rw [hrs, U32_eq]
    exact Nat.mod_eq_of_lt (by omega)
  refine Or.inr ⟨hfit, hk1, cc.2.2, cc.2.1, hcc2, fun fuel => ?_⟩
  rw [fram_kvs_find_end_loop, if_pos c0]
  simp only [hrh, hrc, hcc]
  rw [if_neg c1, if_neg c2, if_neg c3, if_neg c4, if_neg c5, if_neg c6, if_neg c7, hno]
  rfl

/-! ## Key/value store: the scans end before the fuel does -/

/-- The loop of `fram_kvs_scan` on any device and any content of a partition
of less than `2^32` bytes: every iteration that goes on moves the offset at
least 22 bytes forward inside the partition, so the loop is left before the
offset can pass the end of the partition, and the result does not depend on
the fuel once it exceeds the bytes that remain. -/
theorem kvs_scan_loop_fuel (K : Kconfig) (kvs : fram_kvs_t) (p : fram_partition_t)
    (key : List Nat) (hp : kvs.part = some p) (hsz : p.size < U32) :
    ∀ (fuel1 fuel2 off : Nat) (st : kvs_scan_t) (pm : fram_pm_t) (kb : List Nat),
      off ≤ p.size → p.size < off + fuel1 → p.size < off + fuel2 →
      fram_kvs_scan_loop K kvs p key fuel1 pm off st kb
        = fram_kvs_scan_loop K kvs p key fuel2 pm off st kb := by
  intro fuel1
  induction fuel1 with
  | zero => intro fuel2 off st pm kb h1 h2 _; omega
  | succ f1 ih =>
    intro fuel2 off st pm kb h1 h2 h3
    obtain ⟨f2, hf2⟩ : ∃ f2, fuel2 = f2 + 1 := ⟨fuel2 - 1, by omega⟩
    subst hf2
    rcases kvs_scan_iter_step K kvs p key hp hsz (fun _ => True) (fun _ _ _ _ => trivial)
      pm off st kb trivial with ⟨e, pm1, _, hs⟩ | ⟨hfit, hk, pm1, st1, kb1, _, hs⟩
    · rw [hs f1, hs f2]
    · rw [hs f1, hs f2]
      exact ih f2 _ st1 pm1 kb1 hfit (by omega) (by omega)

/-- The loop of `fram_kvs_find_end` on any device and any content of a
partition of less than `2^32` bytes: every iteration that goes on moves the
offset at least 22 bytes forward inside the partition, so the loop is left
before the offset can pass the end of the partition, and the result does not
depend on the fuel once it exceeds the bytes that remain. -/
theorem kvs_find_end_loop_fuel (K : Kconfig) (kvs : fram_kvs_t) (p : fram_partition_t)
    (hp : kvs.part = some p) (hsz : p.size < U32) :
    ∀ (fuel1 fuel2 off ns : Nat) (pm : fram_pm_t) (kb : List Nat),
      off ≤ p.size → p.size < off + fuel1 → p.size < off + fuel2 →
      fram_kvs_find_end_loop K kvs p fuel1 pm off ns kb
        = fram_kvs_find_end_loop K kvs p fuel2 pm off ns kb := by
  intro fuel1
  induction fuel1 with
  | zero => intro fuel2 off ns pm kb h1 h2 _; omega
  | succ f1 ih =>
    intro fuel2 off ns pm kb h1 h2 h3
    obtain ⟨f2, hf2⟩ : ∃ f2, fuel2 = f2 + 1 := ⟨fuel2 - 1, by omega⟩
    subst hf2
    rcases kvs_find_end_iter_step K kvs p hp hsz (fun _ => True) (fun _ _ _ _ => trivial)
      pm off ns kb trivial with ⟨e, pm1, _, hs⟩ | ⟨hfit, hk, pm1, kb1, _, hs⟩
    · rw [hs f1, hs f2]
    · rw [hs f1, hs f2]
      exact ih f2 _ _ pm1 kb1 hfit (by omega) (by omega)

/-! ## Key/value store: one iteration of the scans on a working partition of any size -/

/-- A read through a working partition leaves it working. -/
theorem pm_read_keeps_ok (pm : fram_pm_t) (p : fram_partition_t) (pmem : Nat → Nat)
    (offset len : Nat) (h : PmOK pm p pmem) :
    PmOK (fram_pm_read pm (some p) offset len).2.2 p pmem := by
  by_cases hl : len = 0
  · subst hl
    have e : (fram_pm_read pm (some p) offset 0).2.2 = pm := by
      unfold fram_pm_read fram_pm_is_valid_range fram_dev_read
      simp only [h.initialized, if_true, Bool.not_true, Bool.false_eq_true, if_false]
      have hi := h.initialized
      cases pm
      simp only at hi
      subst hi
      rfl
    rw [e]
    exact h
  · obtain ⟨pm1, hok, e⟩ := fram_pm_read_cases pm p pmem offset len h (by omega)
    rw [e]
    split_ifs <;> exact hok

/-- One iteration of the loop of `fram_kvs_scan` on a working partition of any
size below `2^32`: the loop goes on behind the record when the iteration
accepts one, and is left with its state untouched otherwise. -/
theorem kvs_scan_iter_any (K : Kconfig) (kvs : fram_kvs_t) (p : fram_partition_t)
    (pmem : Nat → Nat) (pm : fram_pm_t) (key : List Nat) (fuel off : Nat)
    (st : kvs_scan_t) (key_buf : List Nat)
    (hp : kvs.part = some p) (h : PmOK pm p pmem) :
    ∃ pm1 kb1 e, PmOK pm1 p pmem ∧
      fram_kvs_scan_loop K kvs p key (fuel + 1) pm off st key_buf =
        match kvs_accept K kvs p pmem off with
        | none => (e, st, pm1)
        | some hdr =>
            fram_kvs_scan_loop K kvs p key fuel pm1
              (off + (20 + hdr.key_len + hdr.value_len + 1))
              (kvs_scan_upd pmem key st off hdr) kb1 := by
  have h20 : KVS_HEADER_SIZE = 20 := rfl
  have hsz0 := pm_size_lt pm p pmem h
  have hstep := kvs_scan_iter_step K kvs p key hp hsz0 (fun pm => PmOK pm p pmem)
    (fun pm o l hh => pm_read_keeps_ok pm p pmem o l hh) pm off st key_buf h
  have hsz := hsz0
  rw [U32_eq] at hsz
  by_cases c1 : off + 20 + 1 ≤ p.size
  swap
  · have hacc : kvs_accept K kvs p pmem off = none := by
      unfold kvs_accept
      rw [if_neg (by rw [h20]; exact c1)]
    rw [hacc]
    rcases hstep with ⟨e, pm1, hk, hs⟩ | ⟨hfit, _⟩
    · exact ⟨pm1, key_buf, e, hk, hs fuel⟩
    · omega
  have c0 : (off + KVS_HEADER_SIZE + 1) % U32 = off + 20 + 1 :=
    Nat.mod_eq_of_lt (by rw [U32_eq]; show off + 20 + 1 < 4294967296; omega)
  obtain ⟨pm1, h1, hok1⟩ := fram_pm_read_ok pm p pmem off 20 h (by decide) (by omega)
  obtain ⟨hdr, hhdr⟩ : ∃ hdr, hdr = fram_kvs_header_of_bytes (mem_read pmem off 20) := ⟨_, rfl⟩
  have c2 : fram_kvs_read_header kvs pm off = (ESP_OK, hdr, pm1) := by
    unfold fram_kvs_read_header
    rw [hp]
    show ((fram_pm_read pm (some p) off 20).1,
      fram_kvs_header_of_bytes (fram_pm_read pm (some p) off 20).2.1,
      (fram_pm_read pm (some p) off 20).2.2) = _
    rw [h1, hhdr]
  by_cases cv : fram_kvs_header_valid K kvs hdr = true
  swap
  · refine ⟨pm1, key_buf, ESP_OK, hok1, ?_⟩
    have hacc : kvs_accept K kvs p pmem off = none := by
      unfold kvs_accept
      rw [if_pos (by rw [h20]; exact c1)]
      simp only [h20, ← hhdr, cv, Bool.not_false, if_true]
    rw [hacc, fram_kvs_scan_loop, if_pos (by rw [c0]; exact c1)]
    simp only [c2, ne_eq, not_true_eq_false, if_false, cv, Bool.not_false, if_true]
  obtain ⟨_, hk1, hk2, _⟩ := kvs_valid_key_len K kvs hdr cv
  by_cases cf : off + (20 + hdr.key_len + hdr.value_len + 1) > p.size
  · have hacc : kvs_accept K kvs p pmem off = none := by
      unfold kvs_accept
      rw [if_pos (by rw [h20]; exact c1)]
      simp only [h20, ← hhdr, cv, Bool.not_true, Bool.false_eq_true, if_false, cf, if_true]
    rw [hacc]
    rcases hstep with ⟨e, pm1, hk, hs⟩ | ⟨hfit, _⟩
    · exact ⟨pm1, key_buf, e, hk, hs fuel⟩
    · rw [c2] at hfit
      simp only at hfit
      omega
  have c3 : fram_kvs_record_size hdr = 20 + hdr.key_len + hdr.value_len + 1 := by
    unfold fram_kvs_record_size
    exact Nat.mod_eq_of_lt (by rw [U32_eq]; show 20 + _ + _ + 1 < 4294967296; omega)
  have c6 : (off + (20 + hdr.key_len + hdr.value_len + 1)) % U32
      = off + (20 + hdr.key_len + hdr.value_len + 1) :=
    Nat.mod_eq_of_lt (by rw [U32_eq]; omega)
  have c4 : ¬ (off > p.size ∨ 20 + hdr.key_len + hdr.value_len + 1 > p.size ∨
      off + (20 + hdr.key_len + hdr.value_len + 1) > p.size) := by omega
  obtain ⟨pm2, h2, hok2⟩ := fram_pm_read_ok pm1 p pmem
    (off + 20 + hdr.key_len + hdr.value_len) 1 hok1 (by decide) (by omega)
  have c5 : fram_kvs_read_commit kvs pm1 off hdr.key_len hdr.value_len
      = (ESP_OK, pmem (off + 20 + hdr.key_len + hdr.value_len), pm2) := by
    unfold fram_kvs_read_commit fram_kvs_commit_offset
    rw [hp, Nat.mod_eq_of_lt (by rw [U32_eq]; show off + 20 + _ + _ < 4294967296; omega)]
    show ((fram_pm_read pm1 (some p) (off + 20 + hdr.key_len + hdr.value_len) 1).1,
      (fram_pm_read pm1 (some p) (off + 20 + hdr.key_len + hdr.value_len) 1).2.1.headD 0,
      (fram_pm_read pm1 (some p) (off + 20 + hdr.key_len + hdr.value_len) 1).2.2) = _
    rw [h2, mem_read_one]
    rfl
  by_cases cc : pmem (off + 20 + hdr.key_len + hdr.value_len) = FRAM_KVS_COMMIT
  swap
  · refine ⟨pm2, key_buf, ESP_OK, hok2, ?_⟩
    have hacc : kvs_accept K kvs p pmem off = none := by
      unfold kvs_accept
      rw [if_pos (by rw [h20]; exact c1)]
      simp only [h20, ← hhdr, cv, Bool.not_true, Bool.false_eq_true, if_false, cf, cc, ne_eq,
        not_false_eq_true, if_true]
    rw [hacc, fram_kvs_scan_loop, if_pos (by rw [c0]; exact c1)]
    simp only [c2, ne_eq, not_true_eq_false, if_false, cv, Bool.not_true, Bool.false_eq_true,
      c3, c6, c4, c5, cc, not_false_eq_true, if_true]
  obtain ⟨pm3, h3, hok3⟩ := kvs_compute_crc_ok kvs p pmem pm2 off hdr
    (mem_read pmem (off + 20) hdr.key_len) (mem_read pmem (off + 20 + hdr.key_len) hdr.value_len)
    key_buf hp hok2 (by rw [mem_read_length]) (by rw [mem_read_length])
    (by rw [mem_read_length]; exact hk1) (by rw [mem_read_length, mem_read_length]; omega)
    (by rw [mem_read_length]) (by rw [mem_read_length, mem_read_length])
  rw [mem_read_length] at h3
  refine ⟨pm3, mem_read pmem (off + 20) hdr.key_len ++ key_buf.drop hdr.key_len, ESP_OK, hok3, ?_⟩
  by_cases hcrc : fram_crc32_le (fram_crc32_le (fram_crc32_le 0 hdr.head_bytes)
        (mem_read pmem (off + 20) hdr.key_len))
        (mem_read pmem (off + 20 + hdr.key_len) hdr.value_len) = hdr.crc32
  swap
  · have hacc : kvs_accept K kvs p pmem off = none := by
      unfold kvs_accept
      rw [if_pos (by rw [h20]; exact c1)]
      simp only [h20, ← hhdr, cv, Bool.not_true, Bool.false_eq_true, if_false, cf, cc, ne_eq,
        not_true_eq_false, hcrc, not_false_eq_true, if_true]
    rw [hacc, fram_kvs_scan_loop, if_pos (by rw [c0]; exact c1)]
    simp only [c2, ne_eq, not_true_eq_false, if_false, cv, Bool.not_true, Bool.false_eq_true,
      c3, c6, c4, c5, cc, h3, hcrc, if_true]
  · have hacc : kvs_accept K kvs p pmem off = some hdr := by
      unfold kvs_accept
      rw [if_pos (by rw [h20]; exact c1)]
      simp only [h20, ← hhdr, cv, Bool.not_true, Bool.false_eq_true, if_false, cf, cc, ne_eq,
        not_true_eq_false, hcrc]
    have hupd : (if hdr.key_len = key.length ∧
          List.take key.length (mem_read pmem (off + 20) hdr.key_len
            ++ List.drop hdr.key_len key_buf) = key then
        ({ found := true, deleted := decide ¬hdr.flags &&& FRAM_KVS_FLAG_DELETED = 0,
           last_hdr := hdr, last_offset := off } : kvs_scan_t)
        else st) = kvs_scan_upd pmem key st off hdr := by
      unfold kvs_scan_upd
      by_cases hk : hdr.key_len = key.length
      · have ht : List.take key.length (mem_read pmem (off + 20) hdr.key_len
            ++ List.drop hdr.key_len key_buf) = mem_read pmem (off + 20) hdr.key_len := by
          rw [← hk, List.take_append_of_le_length (by rw [mem_read_length]),
            List.take_of_length_le (by rw [mem_read_length])]
        rw [ht]
        rfl
      · rw [if_neg (fun e => hk e.1), if_neg (fun e => hk e.1)]
    rw [hacc, fram_kvs_scan_loop, if_pos (by rw [c0]; exact c1)]
    simp only [c2, ne_eq, not_true_eq_false, if_false, cv, Bool.not_true, Bool.false_eq_true,
      c3, c6, c4, c5, cc, h3, hcrc, if_true, reduceCtorEq, hupd]

/-- One iteration of the loop of `fram_kvs_find_end` on a working partition of any
size below `2^32`: the loop goes on behind the record when the iteration
accepts one, and is left with the offset and `next_seq` untouched otherwise. -/
theorem kvs_find_end_iter_any (K : Kconfig) (kvs : fram_kvs_t) (p : fram_partition_t)
    (pmem : Nat → Nat) (pm : fram_pm_t) (fuel off next_seq : Nat) (key_buf : List Nat)
    (hp : kvs.part = some p) (h : PmOK pm p pmem) :
    ∃ pm1 kb1 e, PmOK pm1 p pmem ∧
      fram_kvs_find_end_loop K kvs p (fuel + 1) pm off next_seq key_buf =
        match kvs_accept K kvs p pmem off with
        | none => (e, off, next_seq, pm1)
        | some hdr =>
            fram_kvs_find_end_loop K kvs p fuel pm1
              (off + (20 + hdr.key_len + hdr.value_len + 1))
              (kvs_seq_upd next_seq hdr.seq) kb1 := by
  have h20 : KVS_HEADER_SIZE = 20 := rfl
  have hsz0 := pm_size_lt pm p pmem h
  have hstep := kvs_find_end_iter_step K kvs p hp hsz0 (fun pm => PmOK pm p pmem)
    (fun pm o l hh => pm_read_keeps_ok pm p pmem o l hh) pm off next_seq key_buf h
  have hsz := hsz0
  rw [U32_eq] at hsz
  by_cases c1 : off + 20 + 1 ≤ p.size
  swap
  · have hacc : kvs_accept K kvs p pmem off = none := by
      unfold kvs_accept
      rw [if_neg (by rw [h20]; exact c1)]
    rw [hacc]
    rcases hstep with ⟨e, pm1, hk, hs⟩ | ⟨hfit, _⟩
    · exact ⟨pm1, key_buf, e, hk, hs fuel⟩
    · omega
  have c0 : (off + KVS_HEADER_SIZE + 1) % U32 = off + 20 + 1 :=
    Nat.mod_eq_of_lt (by rw [U32_eq]; show off + 20 + 1 < 4294967296; omega)
  obtain ⟨pm1, h1, hok1⟩ := fram_pm_read_ok pm p pmem off 20 h (by decide) (by omega)
  obtain ⟨hdr, hhdr⟩ : ∃ hdr, hdr = fram_kvs_header_of_bytes (mem_read pmem off 20) := ⟨_, rfl⟩
  have c2 : fram_kvs_read_header kvs pm off = (ESP_OK, hdr, pm1) := by
    unfold fram_kvs_read_header
    rw [hp]
    show ((fram_pm_read pm (some p) off 20).1,
      fram_kvs_header_of_bytes (fram_pm_read pm (some p) off 20).2.1,
      (fram_pm_read pm (some p) off 20).2.2) = _
    rw [h1, hhdr]
  by_cases cv : fram_kvs_header_valid K kvs hdr = true
  swap
  · refine ⟨pm1, key_buf, ESP_OK, hok1, ?_⟩
    have hacc : kvs_accept K kvs p pmem off = none := by
      unfold kvs_accept
      rw [if_pos (by rw [h20]; exact c1)]
      simp only [h20, ← hhdr, cv, Bool.not_false, if_true]
    rw [hacc, fram_kvs_find_end_loop, if_pos (by rw [c0]; exact c1)]
    simp only [c2, ne_eq, not_true_eq_false, if_false, cv, Bool.not_false, if_true]
  obtain ⟨_, hk1, hk2, _⟩ := kvs_valid_key_len K kvs hdr cv
  by_cases cf : off + (20 + hdr.key_len + hdr.value_len + 1) > p.size
  · have hacc : kvs_accept K kvs p pmem off = none := by
      unfold kvs_accept
      rw [if_pos (by rw [h20]; exact c1)]
      simp only [h20, ← hhdr, cv, Bool.not_true, Bool.false_eq_true, if_false, cf, if_true]
    rw [hacc]
    rcases hstep with ⟨e, pm1, hk, hs⟩ | ⟨hfit, _⟩
    · exact ⟨pm1, key_buf, e, hk, hs fuel⟩
    · rw [c2] at hfit
      simp only at hfit
      omega
  have c3 : fram_kvs_record_size hdr = 20 + hdr.key_len + hdr.value_len + 1 := by
    unfold fram_kvs_record_size
    exact Nat.mod_eq_of_lt (by rw [U32_eq]; show 20 + _ + _ + 1 < 4294967296; omega)
  have c6 : (off + (20 + hdr.key_len + hdr.value_len + 1)) % U32
      = off + (20 + hdr.key_len + hdr.value_len + 1) :=
    Nat.mod_eq_of_lt (by rw [U32_eq]; omega)
  have c4 : ¬ (off > p.size ∨ 20 + hdr.key_len + hdr.value_len + 1 > p.size ∨
      off + (20 + hdr.key_len + hdr.value_len + 1) > p.size) := by omega
  obtain ⟨pm2, h2, hok2⟩ := fram_pm_read_ok pm1 p pmem
    (off + 20 + hdr.key_len + hdr.value_len) 1 hok1 (by decide) (by omega)
  have c5 : fram_kvs_read_commit kvs pm1 off hdr.key_len hdr.value_len
      = (ESP_OK, pmem (off + 20 + hdr.key_len + hdr.value_len), pm2) := by
    unfold fram_kvs_read_commit fram_kvs_commit_offset
    rw [hp, Nat.mod_eq_of_lt (by rw [U32_eq]; show off + 20 + _ + _ < 4294967296; omega)]
    show ((fram_pm_read pm1 (some p) (off + 20 + hdr.key_len + hdr.value_len) 1).1,
      (fram_pm_read pm1 (some p) (off + 20 + hdr.key_len + hdr.value_len) 1).2.1.headD 0,
      (fram_pm_read pm1 (some p) (off + 20 + hdr.key_len + hdr.value_len) 1).2.2) = _
    rw [h2, mem_read_one]
    rfl
  by_cases cc : pmem (off + 20 + hdr.key_len + hdr.value_len) = FRAM_KVS_COMMIT
  swap
  · refine ⟨pm2, key_buf, ESP_OK, hok2, ?_⟩
    have hacc : kvs_accept K kvs p pmem off = none := by
      unfold kvs_accept
      rw [if_pos (by rw [h20]; exact c1)]
      simp only [h20, ← hhdr, cv, Bool.not_true, Bool.false_eq_true, if_false, cf, cc, ne_eq,
        not_false_eq_true, if_true]
    rw [hacc, fram_kvs_find_end_loop, if_pos (by rw [c0]; exact c1)]
    simp only [c2, ne_eq, not_true_eq_false, if_false, cv, Bool.not_true, Bool.false_eq_true,
      c3, c6, c4, c5, cc, not_false_eq_true, if_true]
  obtain ⟨pm3, h3, hok3⟩ := kvs_compute_crc_ok kvs p pmem pm2 off hdr
    (mem_read pmem (off + 20) hdr.key_len) (mem_read pmem (off + 20 + hdr.key_len) hdr.value_len)
    key_buf hp hok2 (by rw [mem_read_length]) (by rw [mem_read_length])
    (by rw [mem_read_length]; exact hk1) (by rw [mem_read_length, mem_read_length]; omega)
    (by rw [mem_read_length]) (by rw [mem_read_length, mem_read_length])
  rw [mem_read_length] at h3
  refine ⟨pm3, mem_read pmem (off + 20) hdr.key_len ++ key_buf.drop hdr.key_len, ESP_OK, hok3, ?_⟩
  by_cases hcrc : fram_crc32_le (fram_crc32_le (fram_crc32_le 0 hdr.head_bytes)
        (mem_read pmem (off + 20) hdr.key_len))
        (mem_read pmem (off + 20 + hdr.key_len) hdr.value_len) = hdr.crc32
  swap
  · have hacc : kvs_accept K kvs p pmem off = none := by
      unfold kvs_accept
      rw [if_pos (by rw [h20]; exact c1)]
      simp only [h20, ← hhdr, cv, Bool.not_true, Bool.false_eq_true, if_false, cf, cc, ne_eq,
        not_true_eq_false, hcrc, not_false_eq_true, if_true]
    rw [hacc, fram_kvs_find_end_loop, if_pos (by rw [c0]; exact c1)]
    simp only [c2, ne_eq, not_true_eq_false, if_false, cv, Bool.not_true, Bool.false_eq_true,
      c3, c6, c4, c5, cc, h3, hcrc, if_true]
  · have hacc : kvs_accept K kvs p pmem off = some hdr := by
      unfold kvs_accept
      rw [if_pos (by rw [h20]; exact c1)]
      simp only [h20, ← hhdr, cv, Bool.not_true, Bool.false_eq_true, if_false, cf, cc, ne_eq,
        not_true_eq_false, hcrc]
    rw [hacc, fram_kvs_find_end_loop, if_pos (by rw [c0]; exact c1)]
    simp only [c2, ne_eq, not_true_eq_false, if_false, cv, Bool.not_true, Bool.false_eq_true,
      c3, c6, c4, c5, cc, h3, hcrc, if_true, reduceCtorEq, kvs_seq_upd]

/-! ## Key/value store: the scans over any content of a working partition of any size -/

/-- The loop of `fram_kvs_scan` over any content of a working partition, with
enough fuel to reach the end of the partition: it stops where the walk over
the partition bytes stops, with the state of that walk. -/
theorem kvs_scan_walk_any (K : Kconfig) (kvs : fram_kvs_t) (p : fram_partition_t)
    (pmem : Nat → Nat) (key : List Nat) (hp : kvs.part = some p) :
    ∀ (fuel off : Nat) (st : kvs_scan_t) (pm : fram_pm_t) (key_buf : List Nat),
      PmOK pm p pmem → off ≤ p.size → p.size < off + fuel →
      ∃ pm1 e, fram_kvs_scan_loop K kvs p key fuel pm off st key_buf
          = (e, kvs_walk_scan K kvs p pmem key fuel off st, pm1) ∧ PmOK pm1 p pmem := by
  intro fuel
  induction fuel with
  | zero => intro off st pm key_buf _ h1 h2; omega
  | succ f ih =>
    intro off st pm key_buf h h1 h2
    obtain ⟨pm1, kb1, e, hok1, e1⟩ := kvs_scan_iter_any K kvs p pmem pm key f off st key_buf hp h
    cases hacc : kvs_accept K kvs p pmem off with
    | none =>
      rw [hacc] at e1
      refine ⟨pm1, e, ?_, hok1⟩
      rw [e1, kvs_walk_scan, hacc]
    | some hdr =>
      rw [hacc] at e1
      obtain ⟨_, _, _, a4, _, _⟩ := kvs_accept_some K kvs p pmem off hdr hacc
      obtain ⟨pm2, e2, h2, hok2⟩ := ih (off + (20 + hdr.key_len + hdr.value_len + 1))
        (kvs_scan_upd pmem key st off hdr) pm1 kb1 hok1 a4 (by omega)
      refine ⟨pm2, e2, ?_, hok2⟩
      simp only at e1
      rw [e1, h2, kvs_walk_scan, hacc]

/-- The loop of `fram_kvs_find_end` over any content of a working partition,
with enough fuel to reach the end of the partition: it stops where the walk
over the partition bytes stops, with the sequence number of that walk. -/
theorem kvs_find_end_walk_any (K : Kconfig) (kvs : fram_kvs_t) (p : fram_partition_t)
    (pmem : Nat → Nat) (hp : kvs.part = some p) :
    ∀ (fuel off ns : Nat) (pm : fram_pm_t) (key_buf : List Nat),
      PmOK pm p pmem → off ≤ p.size → p.size < off + fuel →
      ∃ pm1 e, fram_kvs_find_end_loop K kvs p fuel pm off ns key_buf
          = (e, (kvs_walk K kvs p pmem fuel off ns).1,
              (kvs_walk K kvs p pmem fuel off ns).2, pm1) ∧ PmOK pm1 p pmem := by
  intro fuel
  induction fuel with
  | zero => intro off ns pm key_buf _ h1 h2; omega
  | succ f ih =>
    intro off ns pm key_buf h h1 h2
    obtain ⟨pm1, kb1, e, hok1, e1⟩ := kvs_find_end_iter_any K kvs p pmem pm f off ns key_buf hp h
    cases hacc : kvs_accept K kvs p pmem off with
    | none =>
      rw [hacc] at e1
      refine ⟨pm1, e, ?_, hok1⟩
      rw [e1, kvs_walk, hacc]
    | some hdr =>
      rw [hacc] at e1
      obtain ⟨_, _, _, a4, _, _⟩ := kvs_accept_some K kvs p pmem off hdr hacc
      obtain ⟨pm2, e2, h2, hok2⟩ := ih (off + (20 + hdr.key_len + hdr.value_len + 1))
        (kvs_seq_upd ns hdr.seq) pm1 kb1 hok1 a4 (by omega)
      refine ⟨pm2, e2, ?_, hok2⟩
      simp only at e1
      rw [e1, h2, kvs_walk, hacc]

theorem kvs_walk_scan_fits (K : Kconfig) (kvs : fram_kvs_t) (p : fram_partition_t)
    (pmem : Nat → Nat) (key : List Nat) :
    ∀ (fuel off : Nat) (st : kvs_scan_t), KvsScanFits K kvs p st →
      KvsScanFits K kvs p (kvs_walk_scan K kvs p pmem key fuel off st) := by
  intro fuel
  induction fuel with
  | zero => intro off st h; exact h
  | succ f ih =>
    intro off st h
    rw [kvs_walk_scan]
    cases hacc : kvs_accept K kvs p pmem off with
    | none => exact h
    | some hdr =>
      obtain ⟨_, _, a3, a4, _, _⟩ := kvs_accept_some K kvs p pmem off hdr hacc
      apply ih
      unfold kvs_scan_upd
      split_ifs
      · intro _
        exact ⟨a3, a4⟩
      · exact h

/-! ## Key/value store: `get`, `get_len` and `exists` agree -/

/-- The function `fram_kvs_scan` over any content of a working partition: it
either hands back a record with a valid header that lies inside the
partition, or returns an error; the partition is left working. -/
theorem kvs_scan_any_form (K : Kconfig) (kvs : fram_kvs_t) (p : fram_partition_t)
    (pmem : Nat → Nat) (pm : fram_pm_t) (key : List Nat) (hp : kvs.part = some p)
    (h : PmOK pm p pmem) :
    ∃ pm1, PmOK pm1 p pmem ∧
      ((∃ hdr off d, fram_kvs_scan K kvs pm key
          = (ESP_OK, { hdr := some hdr, offset := some off, deleted := d }, pm1) ∧
          fram_kvs_header_valid K kvs hdr = true ∧
          off + (20 + hdr.key_len + hdr.value_len + 1) ≤ p.size) ∨
       (∃ e o, e ≠ ESP_OK ∧ fram_kvs_scan K kvs pm key = (e, o, pm1))) := by
  obtain ⟨pm1, e, hl, hok⟩ := kvs_scan_walk_any K kvs p pmem key hp (p.size + 1) 0
    { found := false, deleted := false, last_hdr := kvs_header_zero, last_offset := 0 } pm []
    h (Nat.zero_le _) (by omega)
  have hfit := kvs_walk_scan_fits K kvs p pmem key (p.size + 1) 0
    { found := false, deleted := false, last_hdr := kvs_header_zero, last_offset := 0 }
    (fun hf => Bool.noConfusion hf)
  refine ⟨pm1, hok, ?_⟩
  unfold fram_kvs_scan
  rw [hp]
  simp only [hl]
  by_cases ce : e ≠ ESP_OK
  · rw [if_pos ce]
    exact Or.inr ⟨e, _, ce, rfl⟩
  · rw [if_neg ce]
    by_cases cf : (kvs_walk_scan K kvs p pmem key (p.size + 1) 0
        { found := false, deleted := false, last_hdr := kvs_header_zero,
          last_offset := 0 }).found = true
    · rw [if_pos cf]
      exact Or.inl ⟨_, _, _, rfl, (hfit cf).1, (hfit cf).2⟩
    · rw [if_neg cf]
      exact Or.inr ⟨_, _, fun hh => esp_err_t.noConfusion hh, rfl⟩

/-- C36. `fram_kvs_get`, `fram_kvs_get_len` and `fram_kvs_exists` agree. For
every store bound to a working partition (any content, any state of the store
mutex) and every key: `fram_kvs_exists` is true iff `fram_kvs_get_len` returns
`ESP_OK` iff `fram_kvs_get` called with `*len = CONFIG_FRAM_KVS_MAX_VALUE`
returns `ESP_OK`, and then both report the same length in `*len`. -/
theorem kvs_get_len_exists_agree (K : Kconfig) (kvs : fram_kvs_t) (p : fram_partition_t)
    (pmem : Nat → Nat) (pm : fram_pm_t) (key buf : List Nat) (len0 : Nat)
    (hp : kvs.part = some p) (h : PmOK pm p pmem) :
    ((fram_kvs_exists K kvs pm key).1 = true ↔
      (fram_kvs_get_len K kvs pm key len0).1 = ESP_OK) ∧
    ((fram_kvs_get_len K kvs pm key len0).1 = ESP_OK ↔
      (fram_kvs_get K kvs pm key buf K.FRAM_KVS_MAX_VALUE).1 = ESP_OK) ∧
    ((fram_kvs_get_len K kvs pm key len0).1 = ESP_OK →
      (fram_kvs_get_len K kvs pm key len0).2.1
        = (fram_kvs_get K kvs pm key buf K.FRAM_KVS_MAX_VALUE).2.2.1) := by
  unfold fram_kvs_exists fram_kvs_get_len fram_kvs_get
  by_cases ck : key.length = 0 ∨ key.length > FRAM_KVS_KEY_MAX
  · simp only [if_pos ck]
    simp
  simp only [if_neg ck]
  by_cases cl : fram_kvs_lock kvs ≠ ESP_OK
  · simp only [if_pos cl]
    exact ⟨⟨fun hh => Bool.noConfusion hh, fun hh => absurd hh cl⟩, trivial,
      fun hh => absurd hh cl⟩
  simp only [if_neg cl]
  obtain ⟨pm1, hok, hs | hs⟩ := kvs_scan_any_form K kvs p pmem pm key hp h
  · obtain ⟨hdr, off, d, hs, hv, hfit⟩ := hs
    obtain ⟨_, hk1, hk2, hvl⟩ := kvs_valid_key_len K kvs hdr hv
    have hsz := pm_size_lt pm p pmem h
    rw [hs]
    simp only
    cases d with
    | true =>
      simp
    | false =>
      simp only [Bool.false_eq_true, if_false, Bool.not_false, Bool.and_true, decide_True]
      rw [if_neg (by omega)]
      by_cases cv : hdr.value_len > 0
      · rw [if_pos cv, hp]
        have hm : (off + KVS_HEADER_SIZE + hdr.key_len) % U32 = off + 20 + hdr.key_len :=
          Nat.mod_eq_of_lt (by show off + 20 + hdr.key_len < U32; omega)
        obtain ⟨pm2, hr, _⟩ := fram_pm_read_ok pm1 p pmem (off + 20 + hdr.key_len) hdr.value_len
          hok cv (by omega)
        rw [hm, hr]
        simp
      · rw [if_neg cv]
        simp
  · obtain ⟨e, o, he, hs⟩ := hs
    rw [hs]
    simp only
    cases e <;> first
      | exact absurd rfl he
      | simp

/-- Witness for C36: the store of `test_fram.c` on the erased partition `"kvs"`
of the example manager, and the key `"a"`. -/
theorem kvs_get_len_exists_agree_witness :
    PmOK example_pm example_kvs_part (fun _ => 0xFF) ∧
    ((fram_kvs_exists example_K
        { part := some example_kvs_part, magic := 0x4B56534D, write_offset := 0, next_seq := 0
          ready := true, mutex := SemaphoreHandle_t.free } example_pm [0x61]).1 = true ↔
      (fram_kvs_get_len example_K
        { part := some example_kvs_part, magic := 0x4B56534D, write_offset := 0, next_seq := 0
          ready := true, mutex := SemaphoreHandle_t.free } example_pm [0x61] 0).1 = ESP_OK) :=
  ⟨example_pm_kvs_ok,
    (kvs_get_len_exists_agree example_K
      { part := some example_kvs_part, magic := 0x4B56534D, write_offset := 0, next_seq := 0
        ready := true, mutex := SemaphoreHandle_t.free } example_kvs_part (fun _ => 0xFF)
      example_pm [0x61] [] 0 rfl example_pm_kvs_ok).1⟩

/-! ## Key/value store: the scan of `fram_kvs_init` and the live records -/

theorem kvs_header_valid_iff (K : Kconfig) (kvs : fram_kvs_t) (hdr : fram_kvs_header_t) :
    fram_kvs_header_valid K kvs hdr = true ↔
      hdr.magic = kvs.magic ∧ 1 ≤ hdr.key_len ∧ hdr.key_len ≤ 15 ∧
        hdr.value_len ≤ K.FRAM_KVS_MAX_VALUE := by
  constructor
  · exact kvs_valid_key_len K kvs hdr
  · intro h
    have h15 : FRAM_KVS_KEY_MAX = 15 := rfl
    unfold fram_kvs_header_valid
    rw [h15, if_neg (fun hh => hh h.1), if_neg (by omega), if_neg (by omega)]

/-- The scans accept at an offset exactly the live records of the
specification. -/
theorem kvs_accept_live (K : Kconfig) (kvs : fram_kvs_t) (p : fram_partition_t)
    (pmem : Nat → Nat) (off : Nat) :
    kvs_accept K kvs p pmem off
      = if spec_kvs_live K kvs.magic p pmem off = true then some (spec_kvs_header pmem off)
        else none := by
  have h20 : KVS_HEADER_SIZE = 20 := rfl
  have hA5 : FRAM_KVS_COMMIT = 0xA5 := rfl
  obtain ⟨hdr, hhdr⟩ : ∃ hdr, hdr = fram_kvs_header_of_bytes (mem_read pmem off 20) := ⟨_, rfl⟩
  have hcrc : fram_crc32_le (fram_crc32_le (fram_crc32_le 0 hdr.head_bytes)
        (mem_read pmem (off + 20) hdr.key_len))
        (mem_read pmem (off + 20 + hdr.key_len) hdr.value_len)
      = fram_crc32_le 0 (hdr.head_bytes ++ (mem_read pmem (off + 20) hdr.key_len ++
          mem_read pmem (off + 20 + hdr.key_len) hdr.value_len)) := by
    rw [fram_crc32_le_append, fram_crc32_le_append]
  have hv := kvs_header_valid_iff K kvs hdr
  unfold kvs_accept spec_kvs_live spec_kvs_size spec_kvs_header
  rw [h20, hA5]
  simp only [← hhdr, hcrc, decide_eq_true_eq]
  by_cases c1 : off + 20 + 1 ≤ p.size
  swap
  · rw [if_neg c1, if_neg (fun hh => c1 (by omega))]
  rw [if_pos c1]
  by_cases cv : fram_kvs_header_valid K kvs hdr = true
  swap
  · rw [if_pos (by simpa using cv), if_neg (fun hh => cv (hv.mpr ⟨hh.1, hh.2.1, hh.2.2.1,
      hh.2.2.2.1⟩))]
  rw [if_neg (by simpa using cv)]
  obtain ⟨v1, v2, v3, v4⟩ := hv.mp cv
  by_cases c5 : off + (20 + hdr.key_len + hdr.value_len + 1) > p.size
  · rw [if_pos c5, if_neg (fun hh => by omega)]
  rw [if_neg c5]
  by_cases c6 : pmem (off + 20 + hdr.key_len + hdr.value_len) ≠ 165
  · rw [if_pos c6, if_neg (fun hh => c6 hh.2.2.2.2.2.1)]
  rw [if_neg c6]
  by_cases c7 : fram_crc32_le 0 (hdr.head_bytes ++ (mem_read pmem (off + 20) hdr.key_len ++
          mem_read pmem (off + 20 + hdr.key_len) hdr.value_len)) ≠ hdr.crc32
  · rw [if_pos c7, if_neg (fun hh => c7 hh.2.2.2.2.2.2)]
  rw [if_neg c7, if_pos ⟨v1, v2, v3, v4, by omega, not_not.mp c6, not_not.mp c7⟩]

theorem spec_kvs_run_end_cons (pmem : Nat → Nat) (off o : Nat) (rest : List Nat) :
    spec_kvs_run_end pmem off (o :: rest)
      = spec_kvs_run_end pmem (o + spec_kvs_size pmem o) rest := by
  unfold spec_kvs_run_end
  cases rest with
  | nil => rfl
  | cons r rs =>
    rw [List.getLast?_cons_cons]
    obtain ⟨x, hx⟩ : ∃ x, (r :: rs).getLast? = some x :=
      ⟨_, List.getLast?_eq_getLast _ (List.cons_ne_nil _ _)⟩
    rw [hx]

/-- The walk of `fram_kvs_find_end` stops at the end of the run of live records
and holds the sequence number folded over it. -/
theorem kvs_walk_run (K : Kconfig) (kvs : fram_kvs_t) (p : fram_partition_t)
    (pmem : Nat → Nat) :
    ∀ (fuel off ns : Nat),
      (kvs_walk K kvs p pmem fuel off ns).1
        = spec_kvs_run_end pmem off (spec_kvs_run K kvs.magic p pmem fuel off) ∧
      (kvs_walk K kvs p pmem fuel off ns).2
        = ((spec_kvs_run K kvs.magic p pmem fuel off).map
            (fun o => (spec_kvs_header pmem o).seq)).foldl kvs_seq_upd ns := by
  intro fuel
  induction fuel with
  | zero => intro off ns; exact ⟨rfl, rfl⟩
  | succ f ih =>
    intro off ns
    rw [kvs_walk, spec_kvs_run, kvs_accept_live]
    by_cases c : spec_kvs_live K kvs.magic p pmem off = true
    · rw [if_pos c, if_pos c]
      simp only
      rw [spec_kvs_run_end_cons, List.map_cons, List.foldl_cons]
      exact ih _ _
    · rw [if_neg c, if_neg c]
      exact ⟨rfl, rfl⟩

/-- With enough fuel the walk stops at an offset that holds no live record. -/
theorem kvs_walk_stops (K : Kconfig) (kvs : fram_kvs_t) (p : fram_partition_t)
    (pmem : Nat → Nat) :
    ∀ (fuel off ns : Nat), off ≤ p.size → p.size < off + fuel →
      spec_kvs_live K kvs.magic p pmem (kvs_walk K kvs p pmem fuel off ns).1 = false := by
  intro fuel
  induction fuel with
  | zero => intro off ns h1 h2; omega
  | succ f ih =>
    intro off ns h1 h2
    rw [kvs_walk]
    cases hacc : kvs_accept K kvs p pmem off with
    | none =>
      rw [kvs_accept_live] at hacc
      by_cases c : spec_kvs_live K kvs.magic p pmem off = true
      · rw [if_pos c] at hacc
        exact Option.noConfusion hacc
      · simpa using c
    | some hdr =>
      obtain ⟨_, _, a3, a4, _, _⟩ := kvs_accept_some K kvs p pmem off hdr hacc
      obtain ⟨_, hk1, _, _⟩ := kvs_valid_key_len K kvs hdr a3
      exact ih _ _ a4 (by omega)

/-- A successful `fram_kvs_init` over any content of a working partition of
any size below `2^32`: the store is at the stop offset and sequence number of
the walk over the partition bytes. -/
theorem kvs_init_walk_any (K : Kconfig) (pm : fram_pm_t) (p : fram_partition_t)
    (pmem : Nat → Nat) (cfg : fram_kvs_config_t)
    (h : PmOK pm p pmem) (hfind : fram_pm_find pm cfg.partition_name = some p)
    (hinit : (fram_kvs_init K pm cfg).1 = ESP_OK) :
    ∃ pm1, fram_kvs_init K pm cfg =
        (ESP_OK, { part := some p, magic := cfg.magic
                   write_offset := (kvs_walk K
                     { part := some p, magic := cfg.magic, write_offset := 0, next_seq := 0
                       ready := false, mutex := SemaphoreHandle_t.free }
                     p pmem (p.size + 1) 0 0).1
                   next_seq := (kvs_walk K
                     { part := some p, magic := cfg.magic, write_offset := 0, next_seq := 0
                       ready := false, mutex := SemaphoreHandle_t.free }
                     p pmem (p.size + 1) 0 0).2
                   ready := true, mutex := SemaphoreHandle_t.free }, pm1) ∧
      PmOK pm1 p pmem := by
  obtain ⟨pm1, e, h1, hok1⟩ := kvs_find_end_walk_any K
    { part := some p, magic := cfg.magic, write_offset := 0, next_seq := 0, ready := false
      mutex := SemaphoreHandle_t.free } p pmem rfl (p.size + 1) 0 0 pm [] h
    (Nat.zero_le _) (by omega)
  refine ⟨pm1, ?_, hok1⟩
  unfold fram_kvs_init fram_kvs_find_end at hinit ⊢
  simp only [hfind, h1] at hinit ⊢
  by_cases ce : e = ESP_OK
  · subst ce
    simp only [ne_eq, not_true_eq_false, if_false]
  · rw [if_pos ce] at hinit
    simp only at hinit
    cases e <;> first | exact absurd rfl ce | exact esp_err_t.noConfusion hinit

/-- The update of `next_seq` is the maximum with `seq + 1` as long as no
sequence number is `2^32 - 1`. -/
theorem kvs_seq_fold_max (pmem : Nat → Nat) :
    ∀ (run : List Nat) (ns : Nat), (∀ o, o ∈ run → (spec_kvs_header pmem o).seq + 1 < U32) →
      (run.map (fun o => (spec_kvs_header pmem o).seq)).foldl kvs_seq_upd ns
        = (run.map (fun o => (spec_kvs_header pmem o).seq + 1)).foldl max ns := by
  intro run
  induction run with
  | nil => intro ns _; rfl
  | cons o rest ih =>
    intro ns h
    rw [List.map_cons, List.map_cons, List.foldl_cons, List.foldl_cons]
    have ho := h o (List.mem_cons_self _ _)
    have e : kvs_seq_upd ns (spec_kvs_header pmem o).seq
        = max ns ((spec_kvs_header pmem o).seq + 1) := by
      unfold kvs_seq_upd
      split_ifs with c
      · rw [Nat.mod_eq_of_lt ho]
        omega
      · omega
    rw [e]
    exact ih _ (fun o2 h2 => h o2 (List.mem_cons_of_mem _ h2))

/-- C34. The scan of `fram_kvs_init`. For every content of a working partition
on which `fram_kvs_init` succeeds: `write_offset` is the end offset of the run
of consecutive live records that starts at offset 0, and no live record starts
at `write_offset`, so that run is the longest one; `next_seq` is the sequence
number the update `next_seq = (seq + 1) mod 2^32 if seq ≥ next_seq` yields over
the records of the run, in order, from 0; when no record of the run carries the
sequence number `2^32 - 1`, that is the maximum `seq` of the run plus one, and
0 for the empty run. -/
theorem kvs_init_scan_result (K : Kconfig) (pm : fram_pm_t) (p : fram_partition_t)
    (pmem : Nat → Nat) (cfg : fram_kvs_config_t)
    (h : PmOK pm p pmem) (hfind : fram_pm_find pm cfg.partition_name = some p)
    (hinit : (fram_kvs_init K pm cfg).1 = ESP_OK) :
    (fram_kvs_init K pm cfg).2.1.write_offset
      = spec_kvs_run_end pmem 0 (spec_kvs_run K cfg.magic p pmem (p.size + 1) 0) ∧
    spec_kvs_live K cfg.magic p pmem (fram_kvs_init K pm cfg).2.1.write_offset = false ∧
    (fram_kvs_init K pm cfg).2.1.next_seq
      = kvs_seq_fold pmem (spec_kvs_run K cfg.magic p pmem (p.size + 1) 0) ∧
    ((∀ o, o ∈ spec_kvs_run K cfg.magic p pmem (p.size + 1) 0 →
        (spec_kvs_header pmem o).seq + 1 < U32) →
      (fram_kvs_init K pm cfg).2.1.next_seq
        = spec_kvs_next_seq pmem (spec_kvs_run K cfg.magic p pmem (p.size + 1) 0)) ∧
    (spec_kvs_run K cfg.magic p pmem (p.size + 1) 0 = [] →
      (fram_kvs_init K pm cfg).2.1.write_offset = 0 ∧
      (fram_kvs_init K pm cfg).2.1.next_seq = 0) := by
  obtain ⟨pm1, e, _⟩ := kvs_init_walk_any K pm p pmem cfg h hfind hinit
  obtain ⟨w1, w2⟩ := kvs_walk_run K
    { part := some p, magic := cfg.magic, write_offset := 0, next_seq := 0, ready := false
      mutex := SemaphoreHandle_t.free } p pmem (p.size + 1) 0 0
  have w3 := kvs_walk_stops K
    { part := some p, magic := cfg.magic, write_offset := 0, next_seq := 0, ready := false
      mutex := SemaphoreHandle_t.free } p pmem (p.size + 1) 0 0 (Nat.zero_le _) (by omega)
  rw [e]
  simp only at w1 w2 w3 ⊢
  refine ⟨w1, w3, w2, fun hs => ?_, fun hn => ?_⟩
  · rw [w2]
    exact kvs_seq_fold_max pmem _ 0 hs
  · rw [w1, w2, hn]
    exact ⟨rfl, rfl⟩

/-! ### The record with the last sequence number -/

theorem example_last_seq_pm_ok :
    PmOK example_kvs_last_seq_pm example_kvs_part example_kvs_last_seq_mem :=
  ⟨rfl, by decide, _, 32768, ⟨rfl, rfl, rfl, rfl, by decide, rfl⟩, by decide, fun i _ => by
    show (if 7088 + i < 7088 then 0xFF else example_kvs_last_seq_mem (7088 + i - 7088)) = _
    rw [if_neg (by omega), Nat.add_sub_cancel_left]⟩

theorem example_last_seq_find :
    fram_pm_find example_kvs_last_seq_pm example_kvs_cfg.partition_name
      = some example_kvs_part := by
  decide

theorem example_last_seq_bytes (i : Nat) : example_kvs_last_seq_mem i < 256 := by
  unfold example_kvs_last_seq_mem mem_write
  by_cases c : 0 ≤ i ∧ i < 0 + example_kvs_last_seq_record.length
  · rw [if_pos c]
    have c2 : i < 25 := c.2
    interval_cases i <;> decide
  · rw [if_neg c]
    exact (by decide : (255 : Nat) < 256)

theorem example_last_seq_header :
    (spec_kvs_header example_kvs_last_seq_mem 0).magic = 0x4B56534D ∧
    (spec_kvs_header example_kvs_last_seq_mem 0).seq = 4294967295 ∧
    (spec_kvs_header example_kvs_last_seq_mem 0).key_len = 1 ∧
    (spec_kvs_header example_kvs_last_seq_mem 0).value_len = 3 ∧
    (spec_kvs_header example_kvs_last_seq_mem 0).crc32 = 1766496864 ∧
    (spec_kvs_header example_kvs_last_seq_mem 0).head_bytes
      = [77, 83, 86, 75, 255, 255, 255, 255, 1, 0, 3, 0, 0, 0, 0, 0] :=
  ⟨rfl, rfl, rfl, rfl, rfl, rfl⟩

set_option maxRecDepth 100000 in
theorem example_last_seq_crc_head :
    fram_crc32_le 0 [77, 83, 86, 75, 255, 255, 255, 255, 1, 0, 3, 0, 0, 0, 0, 0]
      = 4081704811 := by
  rw [fram_crc32_le_eq]
  simp [List.replicate, List.foldl, crc32_byte, crc32_bit, U32]

set_option maxRecDepth 100000 in
theorem example_last_seq_crc_key : fram_crc32_le 4081704811 [97] = 3760627905 := by
  rw [fram_crc32_le_eq]
  simp [List.replicate, List.foldl, crc32_byte, crc32_bit, U32]

set_option maxRecDepth 100000 in
theorem example_last_seq_crc_value : fram_crc32_le 3760627905 [111, 110, 101] = 1766496864 := by
  rw [fram_crc32_le_eq]
  simp [List.replicate, List.foldl, crc32_byte, crc32_bit, U32]

theorem example_last_seq_live : spec_kvs_live example_K example_kvs_cfg.magic example_kvs_part
    example_kvs_last_seq_mem 0 = true := by
  have hk : mem_read example_kvs_last_seq_mem (0 + KVS_HEADER_SIZE) 1 = [97] := rfl
  have hv : mem_read example_kvs_last_seq_mem (0 + KVS_HEADER_SIZE + 1) 3 = [111, 110, 101] := rfl
  have hc : example_kvs_last_seq_mem (0 + KVS_HEADER_SIZE + 1 + 3) = 0xA5 := rfl
  obtain ⟨e1, _, e3, e4, e5, e6⟩ := example_last_seq_header
  unfold spec_kvs_live spec_kvs_size
  rw [e1, e3, e4, e5, e6]
  simp only [decide_eq_true_eq]
  rw [hk, hv, hc, ← fram_crc32_le_append, ← fram_crc32_le_append, example_last_seq_crc_head,
    example_last_seq_crc_key, example_last_seq_crc_value]
  exact ⟨rfl, by decide, by decide, by decide, by decide, rfl, rfl⟩

theorem example_last_seq_size : spec_kvs_size example_kvs_last_seq_mem 0 = 25 := by
  obtain ⟨_, _, e3, e4, _, _⟩ := example_last_seq_header
  unfold spec_kvs_size
  rw [e3, e4]
  rfl

theorem example_last_seq_next : spec_kvs_live example_K example_kvs_cfg.magic example_kvs_part
    example_kvs_last_seq_mem 25 = false := by
  have hm : (spec_kvs_header example_kvs_last_seq_mem 25).magic = 4294967295 := rfl
  unfold spec_kvs_live
  rw [hm]
  simp only [decide_eq_false_iff_not]
  intro hh
  exact absurd hh.1 (by decide)

theorem example_last_seq_run : spec_kvs_run example_K example_kvs_cfg.magic example_kvs_part
    example_kvs_last_seq_mem (example_kvs_part.size + 1) 0 = [0] := by
  show spec_kvs_run example_K example_kvs_cfg.magic example_kvs_part
    example_kvs_last_seq_mem (4095 + 1 + 1) 0 = [0]
  rw [spec_kvs_run, if_pos example_last_seq_live, example_last_seq_size, spec_kvs_run,
    example_last_seq_next]
  rfl

/-- The function `fram_kvs_init` on the partition that holds the record with the
sequence number `2^32 - 1`: it succeeds, with `write_offset` behind the record
and `next_seq = 0`. -/
theorem example_last_seq_init :
    ∃ pm1, fram_kvs_init example_K example_kvs_last_seq_pm example_kvs_cfg
      = (ESP_OK, { part := some example_kvs_part, magic := example_kvs_cfg.magic
                   write_offset := 25, next_seq := 0, ready := true
                   mutex := SemaphoreHandle_t.free }, pm1) := by
  obtain ⟨pm1, e, _⟩ := kvs_init_walk example_K example_kvs_last_seq_pm example_kvs_part
    example_kvs_last_seq_mem example_kvs_cfg
    { part := some example_kvs_part, magic := example_kvs_cfg.magic, write_offset := 0
      next_seq := 0, ready := false, mutex := SemaphoreHandle_t.free }
    example_last_seq_pm_ok example_last_seq_find (by decide) rfl
    (kvs_bytes_value_len example_kvs_part example_kvs_last_seq_mem
      (fun i _ => example_last_seq_bytes i))
  obtain ⟨w1, w2⟩ := kvs_walk_run example_K
    { part := some example_kvs_part, magic := example_kvs_cfg.magic, write_offset := 0
      next_seq := 0, ready := false, mutex := SemaphoreHandle_t.free }
    example_kvs_part example_kvs_last_seq_mem (example_kvs_part.size + 1) 0 0
  simp only [example_last_seq_run] at w1 w2
  have v1 : spec_kvs_run_end example_kvs_last_seq_mem 0 [0] = 25 := by
    show 0 + spec_kvs_size example_kvs_last_seq_mem 0 = 25
    rw [example_last_seq_size]
  have v2 : List.foldl kvs_seq_upd 0
      (List.map (fun o => (spec_kvs_header example_kvs_last_seq_mem o).seq) [0]) = 0 := by
    rw [List.map_cons, List.foldl_cons, example_last_seq_header.2.1]
    rfl
  rw [v1] at w1
  rw [v2] at w2
  rw [w1, w2] at e
  exact ⟨pm1, e⟩

/-- Witness for C34: the partition `"kvs"` of the example manager holding one
committed record. -/
theorem kvs_init_scan_result_witness :
    PmOK example_kvs_last_seq_pm example_kvs_part example_kvs_last_seq_mem ∧
    fram_pm_find example_kvs_last_seq_pm example_kvs_cfg.partition_name
      = some example_kvs_part ∧
    (fram_kvs_init example_K example_kvs_last_seq_pm example_kvs_cfg).1 = ESP_OK ∧
    (fram_kvs_init example_K example_kvs_last_seq_pm example_kvs_cfg).2.1.write_offset
      = spec_kvs_run_end example_kvs_last_seq_mem 0
          (spec_kvs_run example_K example_kvs_cfg.magic example_kvs_part
            example_kvs_last_seq_mem (example_kvs_part.size + 1) 0) :=
  have hinit : (fram_kvs_init example_K example_kvs_last_seq_pm example_kvs_cfg).1 = ESP_OK := by
    obtain ⟨pm1, e⟩ := example_last_seq_init
    rw [e]
  ⟨example_last_seq_pm_ok, example_last_seq_find, hinit,
    (kvs_init_scan_result example_K example_kvs_last_seq_pm example_kvs_part
      example_kvs_last_seq_mem example_kvs_cfg example_last_seq_pm_ok example_last_seq_find
      hinit).1⟩

/-- Counterexample to C34 as stated: the partition `"kvs"` holds at offset 0 the
committed record of `set("a", "one", 3)` with the sequence number `2^32 - 1`
and is erased behind it. `fram_kvs_init` succeeds; the run of live records is
that one record, its maximum `seq` plus one is `2^32`, and `next_seq` is 0. -/
theorem kvs_init_scan_result_counterexample :
    PmOK example_kvs_last_seq_pm example_kvs_part example_kvs_last_seq_mem ∧
    (fram_kvs_init example_K example_kvs_last_seq_pm example_kvs_cfg).1 = ESP_OK ∧
    spec_kvs_run example_K example_kvs_cfg.magic example_kvs_part example_kvs_last_seq_mem
      (example_kvs_part.size + 1) 0 = [0] ∧
    (spec_kvs_header example_kvs_last_seq_mem 0).seq = 4294967295 ∧
    spec_kvs_next_seq example_kvs_last_seq_mem [0] = 4294967296 ∧
    (fram_kvs_init example_K example_kvs_last_seq_pm example_kvs_cfg).2.1.write_offset = 25 ∧
    (fram_kvs_init example_K example_kvs_last_seq_pm example_kvs_cfg).2.1.next_seq = 0 := by
  obtain ⟨pm1, e⟩ := example_last_seq_init
  rw [e]
  refine ⟨example_last_seq_pm_ok, rfl, example_last_seq_run, example_last_seq_header.2.1, ?_,
    rfl, rfl⟩
  unfold spec_kvs_next_seq
  rw [List.map_cons, List.foldl_cons, example_last_seq_header.2.1]
  rfl

/-! ## Key/value store: the reads of the scans lie inside the partition -/

/-- The reads of the value loop of `fram_kvs_compute_crc` over a value inside a
working partition lie inside the partition. -/
theorem kvs_crc_loop_reads_fit (kvs : fram_kvs_t) (p : fram_partition_t) (pmem : Nat → Nat)
    (hp : kvs.part = some p) :
    ∀ (fuel rem voff : Nat) (pm : fram_pm_t), voff + rem ≤ p.size → PmOK pm p pmem →
      ∀ r, r ∈ fram_kvs_crc_loop_reads kvs fuel pm voff rem → ReadFits p r := by
  intro fuel
  induction fuel with
  | zero =>
    intro rem voff pm _ _ r hr
    exact absurd hr (List.not_mem_nil _)
  | succ n ih =>
    intro rem voff pm hr h r hmem
    have hsz := pm_size_lt pm p pmem h
    rw [U32_eq] at hsz
    rw [fram_kvs_crc_loop_reads] at hmem
    by_cases h0 : rem > 0
    swap
    · rw [if_neg h0] at hmem
      exact absurd hmem (List.not_mem_nil _)
    rw [if_pos h0] at hmem
    obtain ⟨chunk, hchunk⟩ : ∃ chunk, chunk =
        (if rem > FRAM_KVS_CRC_CHUNK then FRAM_KVS_CRC_CHUNK else rem) := ⟨_, rfl⟩
    have hc1 : 0 < chunk ∧ chunk ≤ rem := by
      rw [hchunk]
      have : FRAM_KVS_CRC_CHUNK = 64 := rfl
      split_ifs <;> omega
    obtain ⟨pm1, h1, hok1⟩ := fram_pm_read_ok pm p pmem voff chunk h hc1.1 (by omega)
    have hmod : (voff + chunk) % U32 = voff + chunk :=
      Nat.mod_eq_of_lt (by rw [U32_eq]; omega)
    simp only [← hchunk, hp, h1, ne_eq, not_true_eq_false, if_false, hmod] at hmem
    rcases List.mem_cons.mp hmem with e | hmem2
    · rw [e]
      exact ⟨hc1.1, by show voff + chunk ≤ p.size; omega⟩
    · exact ih (rem - chunk) (voff + chunk) pm1 (by omega) hok1 r hmem2

/-- The reads of `fram_kvs_compute_crc` on a record inside a working partition
lie inside the partition. -/
theorem kvs_compute_crc_reads_fit (kvs : fram_kvs_t) (p : fram_partition_t) (pmem : Nat → Nat)
    (pm : fram_pm_t) (off : Nat) (hdr : fram_kvs_header_t) (key_buf : List Nat)
    (hp : kvs.part = some p) (h : PmOK pm p pmem) (hk1 : 1 ≤ hdr.key_len)
    (hfit : off + 20 + hdr.key_len + hdr.value_len + 1 ≤ p.size) :
    ∀ r, r ∈ fram_kvs_compute_crc_reads kvs pm off hdr key_buf → ReadFits p r := by
  intro r hmem
  have hsz := pm_size_lt pm p pmem h
  rw [U32_eq] at hsz
  obtain ⟨pm1, h1, hok1⟩ := fram_pm_read_ok pm p pmem (off + 20) hdr.key_len h (by omega)
    (by omega)
  have hm1 : (off + KVS_HEADER_SIZE) % U32 = off + 20 :=
    Nat.mod_eq_of_lt (by rw [U32_eq]; show off + 20 < 4294967296; omega)
  have hm2 : (off + KVS_HEADER_SIZE + hdr.key_len) % U32 = off + 20 + hdr.key_len :=
    Nat.mod_eq_of_lt (by rw [U32_eq]; show off + 20 + hdr.key_len < 4294967296; omega)
  unfold fram_kvs_compute_crc_reads at hmem
  simp only [hp, hm1, hm2, if_pos (show hdr.key_len > 0 by omega), h1, ne_eq, not_true_eq_false,
    if_false] at hmem
  rcases List.mem_append.mp hmem with hm | hm
  · rw [List.mem_singleton.mp hm]
    exact ⟨by show 0 < hdr.key_len; omega, by show off + 20 + hdr.key_len ≤ p.size; omega⟩
  · exact kvs_crc_loop_reads_fit kvs p pmem hp _ _ _ pm1 (by omega) hok1 r hm

/-- The reads of one iteration of the loop of `fram_kvs_scan` on a working
partition. When the iteration accepts a record, its reads (header, commit
byte, key, value) lie inside the partition and the loop goes on behind the
record. When it accepts none, at an offset at least 65572 bytes below `2^32`
(no 32-bit sum wraps), the reads it issues lie inside the partition. -/
theorem kvs_scan_reads_iter (K : Kconfig) (kvs : fram_kvs_t) (p : fram_partition_t)
    (pmem : Nat → Nat) (pm : fram_pm_t) (fuel off : Nat) (key_buf : List Nat)
    (hp : kvs.part = some p) (h : PmOK pm p pmem) :
    match kvs_accept K kvs p pmem off with
    | none =>
        off + 65572 ≤ U32 →
        (off + 21 ≤ p.size →
          (fram_kvs_header_of_bytes (mem_read pmem off 20)).value_len < 65536) →
        ∀ r, r ∈ fram_kvs_scan_loop_reads K kvs p (fuel + 1) pm off key_buf → ReadFits p r
    | some hdr =>
        ∃ pm1 kb1 pre, PmOK pm1 p pmem ∧ (∀ r, r ∈ pre → ReadFits p r) ∧
          fram_kvs_scan_loop_reads K kvs p (fuel + 1) pm off key_buf
            = pre ++ fram_kvs_scan_loop_reads K kvs p fuel pm1
                (off + (20 + hdr.key_len + hdr.value_len + 1)) kb1 := by
  have h20 : KVS_HEADER_SIZE = 20 := rfl
  have hsz := pm_size_lt pm p pmem h
  rw [U32_eq] at hsz
  by_cases c1 : off + 20 + 1 ≤ p.size
  swap
  · have hacc : kvs_accept K kvs p pmem off = none := by
      unfold kvs_accept
      rw [if_neg (by rw [h20]; exact c1)]
    rw [hacc]
    intro hb _ r hr
    rw [U32_eq] at hb
    have c0 : (off + KVS_HEADER_SIZE + 1) % U32 = off + 20 + 1 :=
      Nat.mod_eq_of_lt (by rw [U32_eq]; show off + 20 + 1 < 4294967296; omega)
    rw [fram_kvs_scan_loop_reads, if_neg (by rw [c0]; exact c1)] at hr
    exact absurd hr (List.not_mem_nil _)
  have c0 : (off + KVS_HEADER_SIZE + 1) % U32 = off + 20 + 1 :=
    Nat.mod_eq_of_lt (by rw [U32_eq]; show off + 20 + 1 < 4294967296; omega)
  have f0 : ReadFits p (off, 20) := ⟨Nat.zero_lt_succ _, by show off + 20 ≤ p.size; omega⟩
  obtain ⟨pm1, h1, hok1⟩ := fram_pm_read_ok pm p pmem off 20 h (by decide) (by omega)
  obtain ⟨hdr, hhdr⟩ : ∃ hdr, hdr = fram_kvs_header_of_bytes (mem_read pmem off 20) := ⟨_, rfl⟩
  have c2 : fram_kvs_read_header kvs pm off = (ESP_OK, hdr, pm1) := by
    unfold fram_kvs_read_header
    rw [hp]
    show ((fram_pm_read pm (some p) off 20).1,
      fram_kvs_header_of_bytes (fram_pm_read pm (some p) off 20).2.1,
      (fram_pm_read pm (some p) off 20).2.2) = _
    rw [h1, hhdr]
  by_cases cv : fram_kvs_header_valid K kvs hdr = true
  swap
  · have hacc : kvs_accept K kvs p pmem off = none := by
      unfold kvs_accept
      rw [if_pos (by rw [h20]; exact c1)]
      simp only [h20, ← hhdr, cv, Bool.not_false, if_true]
    rw [hacc]
    intro _ _ r hr
    rw [fram_kvs_scan_loop_reads, if_pos (by rw [c0]; exact c1)] at hr
    simp only [c2, ne_eq, not_true_eq_false, if_false, cv, Bool.not_false, if_true, h20,
      List.mem_singleton] at hr
    rw [hr]
    exact f0
  obtain ⟨_, hk1, hk2, _⟩ := kvs_valid_key_len K kvs hdr cv
  by_cases cf : off + (20 + hdr.key_len + hdr.value_len + 1) > p.size
  · have hacc : kvs_accept K kvs p pmem off = none := by
      unfold kvs_accept
      rw [if_pos (by rw [h20]; exact c1)]
      simp only [h20, ← hhdr, cv, Bool.not_true, Bool.false_eq_true, if_false, cf, if_true]
    rw [hacc]
    intro hb hvl r hr
    rw [U32_eq] at hb
    have hvl2 := hvl (by omega)
    rw [← hhdr] at hvl2
    have c3 : fram_kvs_record_size hdr = 20 + hdr.key_len + hdr.value_len + 1 := by
      unfold fram_kvs_record_size
      exact Nat.mod_eq_of_lt (by rw [U32_eq]; show 20 + _ + _ + 1 < 4294967296; omega)
    have c6 : (off + (20 + hdr.key_len + hdr.value_len + 1)) % U32
        = off + (20 + hdr.key_len + hdr.value_len + 1) :=
      Nat.mod_eq_of_lt (by rw [U32_eq]; omega)
    have c4 : off > p.size ∨ 20 + hdr.key_len + hdr.value_len + 1 > p.size ∨
        off + (20 + hdr.key_len + hdr.value_len + 1) > p.size := Or.inr (Or.inr cf)
    rw [fram_kvs_scan_loop_reads, if_pos (by rw [c0]; exact c1)] at hr
    simp only [c2, ne_eq, not_true_eq_false, if_false, cv, Bool.not_true, Bool.false_eq_true,
      c3, c6, c4, if_true, h20, List.mem_singleton] at hr
    rw [hr]
    exact f0
  have c3 : fram_kvs_record_size hdr = 20 + hdr.key_len + hdr.value_len + 1 := by
    unfold fram_kvs_record_size
    exact Nat.mod_eq_of_lt (by rw [U32_eq]; show 20 + _ + _ + 1 < 4294967296; omega)
  have c6 : (off + (20 + hdr.key_len + hdr.value_len + 1)) % U32
      = off + (20 + hdr.key_len + hdr.value_len + 1) :=
    Nat.mod_eq_of_lt (by rw [U32_eq]; omega)
  have c4 : ¬ (off > p.size ∨ 20 + hdr.key_len + hdr.value_len + 1 > p.size ∨
      off + (20 + hdr.key_len + hdr.value_len + 1) > p.size) := by omega
  obtain ⟨pm2, h2, hok2⟩ := fram_pm_read_ok pm1 p pmem
    (off + 20 + hdr.key_len + hdr.value_len) 1 hok1 (by decide) (by omega)
  have c7 : fram_kvs_commit_offset off hdr.key_len hdr.value_len
      = off + 20 + hdr.key_len + hdr.value_len := by
    unfold fram_kvs_commit_offset
    exact Nat.mod_eq_of_lt (by rw [U32_eq]; show off + 20 + _ + _ < 4294967296; omega)
  have f1 : ReadFits p (off + 20 + hdr.key_len + hdr.value_len, 1) :=
    ⟨Nat.zero_lt_one, by show off + 20 + hdr.key_len + hdr.value_len + 1 ≤ p.size; omega⟩
  have c5 : fram_kvs_read_commit kvs pm1 off hdr.key_len hdr.value_len
      = (ESP_OK, pmem (off + 20 + hdr.key_len + hdr.value_len), pm2) := by
    unfold fram_kvs_read_commit
    rw [c7, hp]
    show ((fram_pm_read pm1 (some p) (off + 20 + hdr.key_len + hdr.value_len) 1).1,
      (fram_pm_read pm1 (some p) (off + 20 + hdr.key_len + hdr.value_len) 1).2.1.headD 0,
      (fram_pm_read pm1 (some p) (off + 20 + hdr.key_len + hdr.value_len) 1).2.2) = _
    rw [h2, mem_read_one]
    rfl
  by_cases cc : pmem (off + 20 + hdr.key_len + hdr.value_len) = FRAM_KVS_COMMIT
  swap
  · have hacc : kvs_accept K kvs p pmem off = none := by
      unfold kvs_accept
      rw [if_pos (by rw [h20]; exact c1)]
      simp only [h20, ← hhdr, cv, Bool.not_true, Bool.false_eq_true, if_false, cf, cc, ne_eq,
        not_false_eq_true, if_true]
    rw [hacc]
    intro _ _ r hr
    rw [fram_kvs_scan_loop_reads, if_pos (by rw [c0]; exact c1)] at hr
    simp only [c2, ne_eq, not_true_eq_false, if_false, cv, Bool.not_true, Bool.false_eq_true,
      c3, c6, c4, c5, c7, cc, not_false_eq_true, if_true, h20, List.mem_cons,
      List.mem_singleton, List.not_mem_nil, or_false] at hr
    rcases hr with e | e
    · rw [e]
      exact f0
    · rw [e]
      exact f1
  have f2 := kvs_compute_crc_reads_fit kvs p pmem pm2 off hdr key_buf hp hok2 hk1 (by omega)
  obtain ⟨pm3, h3, hok3⟩ := kvs_compute_crc_ok kvs p pmem pm2 off hdr
    (mem_read pmem (off + 20) hdr.key_len) (mem_read pmem (off + 20 + hdr.key_len) hdr.value_len)
    key_buf hp hok2 (by rw [mem_read_length]) (by rw [mem_read_length])
    (by rw [mem_read_length]; exact hk1) (by rw [mem_read_length, mem_read_length]; omega)
    (by rw [mem_read_length]) (by rw [mem_read_length, mem_read_length])
  rw [mem_read_length] at h3
  by_cases hcrc : fram_crc32_le (fram_crc32_le (fram_crc32_le 0 hdr.head_bytes)
        (mem_read pmem (off + 20) hdr.key_len))
        (mem_read pmem (off + 20 + hdr.key_len) hdr.value_len) = hdr.crc32
  swap
  · have hacc : kvs_accept K kvs p pmem off = none := by
      unfold kvs_accept
      rw [if_pos (by rw [h20]; exact c1)]
      simp only [h20, ← hhdr, cv, Bool.not_true, Bool.false_eq_true, if_false, cf, cc, ne_eq,
        not_true_eq_false, hcrc, not_false_eq_true, if_true]
    rw [hacc]
    intro _ _ r hr
    rw [fram_kvs_scan_loop_reads, if_pos (by rw [c0]; exact c1)] at hr
    simp only [c2, ne_eq, not_true_eq_false, if_false, cv, Bool.not_true, Bool.false_eq_true,
      c3, c6, c4, c5, c7, cc, h3, hcrc, if_true, h20, List.append_nil, List.mem_cons] at hr
    rcases hr with e | e | hr
    · rw [e]
      exact f0
    · rw [e]
      exact f1
    · exact f2 r hr
  · have hacc : kvs_accept K kvs p pmem off = some hdr := by
      unfold kvs_accept
      rw [if_pos (by rw [h20]; exact c1)]
      simp only [h20, ← hhdr, cv, Bool.not_true, Bool.false_eq_true, if_false, cf, cc, ne_eq,
        not_true_eq_false, hcrc]
    rw [hacc]
    refine ⟨pm3, mem_read pmem (off + 20) hdr.key_len ++ key_buf.drop hdr.key_len,
      (off, 20) :: (off + 20 + hdr.key_len + hdr.value_len, 1) ::
        fram_kvs_compute_crc_reads kvs pm2 off hdr key_buf, hok3, ?_, ?_⟩
    · intro r hr
      rcases List.mem_cons.mp hr with e | hr
      · rw [e]
        exact f0
      rcases List.mem_cons.mp hr with e | hr
      · rw [e]
        exact f1
      · exact f2 r hr
    · rw [fram_kvs_scan_loop_reads, if_pos (by rw [c0]; exact c1)]
      simp only [c2, ne_eq, not_true_eq_false, if_false, cv, Bool.not_true, Bool.false_eq_true,
        c3, c6, c4, c5, c7, cc, h3, hcrc, if_true, reduceCtorEq, h20, List.cons_append]

/-- The reads of one iteration of the loop of `fram_kvs_find_end` on a working
partition. When the iteration accepts a record, its reads (header, commit
byte, key, value) lie inside the partition and the loop goes on behind the
record. When it accepts none, at an offset at least 65572 bytes below `2^32`
(no 32-bit sum wraps), the reads it issues lie inside the partition. -/
theorem kvs_find_end_reads_iter (K : Kconfig) (kvs : fram_kvs_t) (p : fram_partition_t)
    (pmem : Nat → Nat) (pm : fram_pm_t) (fuel off : Nat) (key_buf : List Nat)
    (hp : kvs.part = some p) (h : PmOK pm p pmem) :
    match kvs_accept K kvs p pmem off with
    | none =>
        off + 65572 ≤ U32 →
        (off + 21 ≤ p.size →
          (fram_kvs_header_of_bytes (mem_read pmem off 20)).value_len < 65536) →
        ∀ r, r ∈ fram_kvs_find_end_loop_reads K kvs p (fuel + 1) pm off key_buf → ReadFits p r
    | some hdr =>
        ∃ pm1 kb1 pre, PmOK pm1 p pmem ∧ (∀ r, r ∈ pre → ReadFits p r) ∧
          fram_kvs_find_end_loop_reads K kvs p (fuel + 1) pm off key_buf
            = pre ++ fram_kvs_find_end_loop_reads K kvs p fuel pm1
                (off + (20 + hdr.key_len + hdr.value_len + 1)) kb1 := by
  have h20 : KVS_HEADER_SIZE = 20 := rfl
  have hsz := pm_size_lt pm p pmem h
  rw [U32_eq] at hsz
  by_cases c1 : off + 20 + 1 ≤ p.size
  swap
  · have hacc : kvs_accept K kvs p pmem off = none := by
      unfold kvs_accept
      rw [if_neg (by rw [h20]; exact c1)]
    rw [hacc]
    intro hb _ r hr
    rw [U32_eq] at hb
    have c0 : (off + KVS_HEADER_SIZE + 1) % U32 = off + 20 + 1 :=
      Nat.mod_eq_of_lt (by rw [U32_eq]; show off + 20 + 1 < 4294967296; omega)
    rw [fram_kvs_find_end_loop_reads, if_neg (by rw [c0]; exact c1)] at hr
    exact absurd hr (List.not_mem_nil _)
  have c0 : (off + KVS_HEADER_SIZE + 1) % U32 = off + 20 + 1 :=
    Nat.mod_eq_of_lt (by rw [U32_eq]; show off + 20 + 1 < 4294967296; omega)
  have f0 : ReadFits p (off, 20) := ⟨Nat.zero_lt_succ _, by show off + 20 ≤ p.size; omega⟩
  obtain ⟨pm1, h1, hok1⟩ := fram_pm_read_ok pm p pmem off 20 h (by decide) (by omega)
  obtain ⟨hdr, hhdr⟩ : ∃ hdr, hdr = fram_kvs_header_of_bytes (mem_read pmem off 20) := ⟨_, rfl⟩
  have c2 : fram_kvs_read_header kvs pm off = (ESP_OK, hdr, pm1) := by
    unfold fram_kvs_read_header
    rw [hp]
    show ((fram_pm_read pm (some p) off 20).1,
      fram_kvs_header_of_bytes (fram_pm_read pm (some p) off 20).2.1,
      (fram_pm_read pm (some p) off 20).2.2) = _
    rw [h1, hhdr]
  by_cases cv : fram_kvs_header_valid K kvs hdr = true
  swap
  · have hacc : kvs_accept K kvs p pmem off = none := by
      unfold kvs_accept
      rw [if_pos (by rw [h20]; exact c1)]
      simp only [h20, ← hhdr, cv, Bool.not_false, if_true]
    rw [hacc]
    intro _ _ r hr
    rw [fram_kvs_find_end_loop_reads, if_pos (by rw [c0]; exact c1)] at hr
    simp only [c2, ne_eq, not_true_eq_false, if_false, cv, Bool.not_false, if_true, h20,
      List.mem_singleton] at hr
    rw [hr]
    exact f0
  obtain ⟨_, hk1, hk2, _⟩ := kvs_valid_key_len K kvs hdr cv
  by_cases cf : off + (20 + hdr.key_len + hdr.value_len + 1) > p.size
  · have hacc : kvs_accept K kvs p pmem off = none := by
      unfold kvs_accept
      rw [if_pos (by rw [h20]; exact c1)]
      simp only [h20, ← hhdr, cv, Bool.not_true, Bool.false_eq_true, if_false, cf, if_true]
    rw [hacc]
    intro hb hvl r hr
    rw [U32_eq] at hb
    have hvl2 := hvl (by omega)
    rw [← hhdr] at hvl2
    have c3 : fram_kvs_record_size hdr = 20 + hdr.key_len + hdr.value_len + 1 := by
      unfold fram_kvs_record_size
      exact Nat.mod_eq_of_lt (by rw [U32_eq]; show 20 + _ + _ + 1 < 4294967296; omega)
    have c6 : (off + (20 + hdr.key_len + hdr.value_len + 1)) % U32
        = off + (20 + hdr.key_len + hdr.value_len + 1) :=
      Nat.mod_eq_of_lt (by rw [U32_eq]; omega)
    have c4 : off > p.size ∨ 20 + hdr.key_len + hdr.value_len + 1 > p.size ∨
        off + (20 + hdr.key_len + hdr.value_len + 1) > p.size := Or.inr (Or.inr cf)
    rw [fram_kvs_find_end_loop_reads, if_pos (by rw [c0]; exact c1)] at hr
    simp only [c2, ne_eq, not_true_eq_false, if_false, cv, Bool.not_true, Bool.false_eq_true,
      c3, c6, c4, if_true, h20, List.mem_singleton] at hr
    rw [hr]
    exact f0
  have c3 : fram_kvs_record_size hdr = 20 + hdr.key_len + hdr.value_len + 1 := by
    unfold fram_kvs_record_size
    exact Nat.mod_eq_of_lt (by rw [U32_eq]; show 20 + _ + _ + 1 < 4294967296; omega)
  have c6 : (off + (20 + hdr.key_len + hdr.value_len + 1)) % U32
      = off + (20 + hdr.key_len + hdr.value_len + 1) :=
    Nat.mod_eq_of_lt (by rw [U32_eq]; omega)
  have c4 : ¬ (off > p.size ∨ 20 + hdr.key_len + hdr.value_len + 1 > p.size ∨
      off + (20 + hdr.key_len + hdr.value_len + 1) > p.size) := by omega
  obtain ⟨pm2, h2, hok2⟩ := fram_pm_read_ok pm1 p pmem
    (off + 20 + hdr.key_len + hdr.value_len) 1 hok1 (by decide) (by omega)
  have c7 : fram_kvs_commit_offset off hdr.key_len hdr.value_len
      = off + 20 + hdr.key_len + hdr.value_len := by
    unfold fram_kvs_commit_offset
    exact Nat.mod_eq_of_lt (by rw [U32_eq]; show off + 20 + _ + _ < 4294967296; omega)
  have f1 : ReadFits p (off + 20 + hdr.key_len + hdr.value_len, 1) :=
    ⟨Nat.zero_lt_one, by show off + 20 + hdr.key_len + hdr.value_len + 1 ≤ p.size; omega⟩
  have c5 : fram_kvs_read_commit kvs pm1 off hdr.key_len hdr.value_len
      = (ESP_OK, pmem (off + 20 + hdr.key_len + hdr.value_len), pm2) := by
    unfold fram_kvs_read_commit
    rw [c7, hp]
    show ((fram_pm_read pm1 (some p) (off + 20 + hdr.key_len + hdr.value_len) 1).1,
      (fram_pm_read pm1 (some p) (off + 20 + hdr.key_len + hdr.value_len) 1).2.1.headD 0,
      (fram_pm_read pm1 (some p) (off + 20 + hdr.key_len + hdr.value_len) 1).2.2) = _
    rw [h2, mem_read_one]
    rfl
  by_cases cc : pmem (off + 20 + hdr.key_len + hdr.value_len) = FRAM_KVS_COMMIT
  swap
  · have hacc : kvs_accept K kvs p pmem off = none := by
      unfold kvs_accept
      rw [if_pos (by rw [h20]; exact c1)]
      simp only [h20, ← hhdr, cv, Bool.not_true, Bool.false_eq_true, if_false, cf, cc, ne_eq,
        not_false_eq_true, if_true]
    rw [hacc]
    intro _ _ r hr
    rw [fram_kvs_find_end_loop_reads, if_pos (by rw [c0]; exact c1)] at hr
    simp only [c2, ne_eq, not_true_eq_false, if_false, cv, Bool.not_true, Bool.false_eq_true,
      c3, c6, c4, c5, c7, cc, not_false_eq_true, if_true, h20, List.mem_cons,
      List.mem_singleton, List.not_mem_nil, or_false] at hr
    rcases hr with e | e
    · rw [e]
      exact f0
    · rw [e]
      exact f1
  have f2 := kvs_compute_crc_reads_fit kvs p pmem pm2 off hdr key_buf hp hok2 hk1 (by omega)
  obtain ⟨pm3, h3, hok3⟩ := kvs_compute_crc_ok kvs p pmem pm2 off hdr
    (mem_read pmem (off + 20) hdr.key_len) (mem_read pmem (off + 20 + hdr.key_len) hdr.value_len)
    key_buf hp hok2 (by rw [mem_read_length]) (by rw [mem_read_length])
    (by rw [mem_read_length]; exact hk1) (by rw [mem_read_length, mem_read_length]; omega)
    (by rw [mem_read_length]) (by rw [mem_read_length, mem_read_length])
  rw [mem_read_length] at h3
  by_cases hcrc : fram_crc32_le (fram_crc32_le (fram_crc32_le 0 hdr.head_bytes)
        (mem_read pmem (off + 20) hdr.key_len))
        (mem_read pmem (off + 20 + hdr.key_len) hdr.value_len) = hdr.crc32
  swap
  · have hacc : kvs_accept K kvs p pmem off = none := by
      unfold kvs_accept
      rw [if_pos (by rw [h20]; exact c1)]
      simp only [h20, ← hhdr, cv, Bool.not_true, Bool.false_eq_true, if_false, cf, cc, ne_eq,
        not_true_eq_false, hcrc, not_false_eq_true, if_true]
    rw [hacc]
    intro _ _ r hr
    rw [fram_kvs_find_end_loop_reads, if_pos (by rw [c0]; exact c1)] at hr
    simp only [c2, ne_eq, not_true_eq_false, if_false, cv, Bool.not_true, Bool.false_eq_true,
      c3, c6, c4, c5, c7, cc, h3, hcrc, if_true, h20, List.append_nil, List.mem_cons] at hr
    rcases hr with e | e | hr
    · rw [e]
      exact f0
    · rw [e]
      exact f1
    · exact f2 r hr
  · have hacc : kvs_accept K kvs p pmem off = some hdr := by
      unfold kvs_accept
      rw [if_pos (by rw [h20]; exact c1)]
      simp only [h20, ← hhdr, cv, Bool.not_true, Bool.false_eq_true, if_false, cf, cc, ne_eq,
        not_true_eq_false, hcrc]
    rw [hacc]
    refine ⟨pm3, mem_read pmem (off + 20) hdr.key_len ++ key_buf.drop hdr.key_len,
      (off, 20) :: (off + 20 + hdr.key_len + hdr.value_len, 1) ::
        fram_kvs_compute_crc_reads kvs pm2 off hdr key_buf, hok3, ?_, ?_⟩
    · intro r hr
      rcases List.mem_cons.mp hr with e | hr
      · rw [e]
        exact f0
      rcases List.mem_cons.mp hr with e | hr
      · rw [e]
        exact f1
      · exact f2 r hr
    · rw [fram_kvs_find_end_loop_reads, if_pos (by rw [c0]; exact c1)]
      simp only [c2, ne_eq, not_true_eq_false, if_false, cv, Bool.not_true, Bool.false_eq_true,
        c3, c6, c4, c5, c7, cc, h3, hcrc, if_true, reduceCtorEq, h20, List.cons_append]

/-- The reads of the loop of `fram_kvs_scan` over any content of a working
partition of at most `2^32 - 65572` bytes lie inside the partition. -/
theorem kvs_scan_reads_fit (K : Kconfig) (kvs : fram_kvs_t) (p : fram_partition_t)
    (pmem : Nat → Nat) (hp : kvs.part = some p) (hb : p.size + 65572 ≤ U32)
    (hvl : ∀ off, off + 21 ≤ p.size →
      (fram_kvs_header_of_bytes (mem_read pmem off 20)).value_len < 65536) :
    ∀ (fuel off : Nat) (pm : fram_pm_t) (key_buf : List Nat),
      PmOK pm p pmem → off ≤ p.size →
      ∀ r, r ∈ fram_kvs_scan_loop_reads K kvs p fuel pm off key_buf → ReadFits p r := by
  intro fuel
  induction fuel with
  | zero =>
    intro off pm key_buf _ _ r hr
    exact absurd hr (List.not_mem_nil _)
  | succ f ih =>
    intro off pm key_buf h h1 r hr
    have hi := kvs_scan_reads_iter K kvs p pmem pm f off key_buf hp h
    cases hacc : kvs_accept K kvs p pmem off with
    | none =>
      rw [hacc] at hi
      exact hi (by omega) (hvl off) r hr
    | some hdr =>
      rw [hacc] at hi
      obtain ⟨pm1, kb1, pre, hok1, hpre, e⟩ := hi
      obtain ⟨_, _, _, a4, _, _⟩ := kvs_accept_some K kvs p pmem off hdr hacc
      rw [e] at hr
      rcases List.mem_append.mp hr with hr | hr
      · exact hpre r hr
      · exact ih _ pm1 kb1 hok1 a4 r hr

/-- The reads of the loop of `fram_kvs_find_end` over any content of a working
partition of at most `2^32 - 65572` bytes lie inside the partition. -/
theorem kvs_find_end_reads_fit (K : Kconfig) (kvs : fram_kvs_t) (p : fram_partition_t)
    (pmem : Nat → Nat) (hp : kvs.part = some p) (hb : p.size + 65572 ≤ U32)
    (hvl : ∀ off, off + 21 ≤ p.size →
      (fram_kvs_header_of_bytes (mem_read pmem off 20)).value_len < 65536) :
    ∀ (fuel off : Nat) (pm : fram_pm_t) (key_buf : List Nat),
      PmOK pm p pmem → off ≤ p.size →
      ∀ r, r ∈ fram_kvs_find_end_loop_reads K kvs p fuel pm off key_buf → ReadFits p r := by
  intro fuel
  induction fuel with
  | zero =>
    intro off pm key_buf _ _ r hr
    exact absurd hr (List.not_mem_nil _)
  | succ f ih =>
    intro off pm key_buf h h1 r hr
    have hi := kvs_find_end_reads_iter K kvs p pmem pm f off key_buf hp h
    cases hacc : kvs_accept K kvs p pmem off with
    | none =>
      rw [hacc] at hi
      exact hi (by omega) (hvl off) r hr
    | some hdr =>
      rw [hacc] at hi
      obtain ⟨pm1, kb1, pre, hok1, hpre, e⟩ := hi
      obtain ⟨_, _, _, a4, _, _⟩ := kvs_accept_some K kvs p pmem off hdr hacc
      rw [e] at hr
      rcases List.mem_append.mp hr with hr | hr
      · exact hpre r hr
      · exact ih _ pm1 kb1 hok1 a4 r hr

/-- The reads of the loop of `fram_kvs_scan` over a log of committed records:
after one iteration per record the loop stands behind the log. -/
theorem kvs_scan_reads_prefix (K : Kconfig) (kvs : fram_kvs_t) (p : fram_partition_t)
    (pmem : Nat → Nat) (hp : kvs.part = some p) (hm : kvs.magic < U32) :
    ∀ (rest : List kvs_op) (off fuel : Nat) (pm : fram_pm_t) (key_buf : List Nat),
      PmOK pm p pmem → KLog pmem kvs.magic off rest → (∀ op, op ∈ rest → op.valid K) →
      off + kvs_log_size rest ≤ p.size →
      ∃ pm1 kb1 pre, PmOK pm1 p pmem ∧
        fram_kvs_scan_loop_reads K kvs p (rest.length + fuel) pm off key_buf
          = pre ++ fram_kvs_scan_loop_reads K kvs p fuel pm1 (off + kvs_log_size rest) kb1 := by
  intro rest
  induction rest with
  | nil =>
    intro off fuel pm key_buf h _ _ _
    refine ⟨pm, key_buf, [], h, ?_⟩
    rw [kvs_log_size_nil, Nat.add_zero, List.length_nil, Nat.zero_add, List.nil_append]
  | cons op rest ih =>
    intro off fuel pm key_buf h hlog hvalid hfit
    obtain ⟨⟨seq, hseq, hrec⟩, hlog2⟩ := hlog
    rw [kvs_log_size_cons] at hfit
    have hv := hvalid op (List.mem_cons_self _ _)
    have hacc := kvs_accept_rec K kvs p pmem off seq op hm hseq hv (by omega) hrec
    have hi := kvs_scan_reads_iter K kvs p pmem pm (rest.length + fuel) off key_buf hp h
    rw [hacc] at hi
    obtain ⟨pm1, kb1, pre, hok1, _, e⟩ := hi
    obtain ⟨l1, l2, _, _⟩ := kvs_header_for_lens kvs.magic seq op
    rw [l1, l2, ← kvs_op_size_eq] at e
    obtain ⟨pm2, kb2, pre2, hok2, e2⟩ := ih (off + op.size) fuel pm1 kb1 hok1 hlog2
      (fun o ho => hvalid o (List.mem_cons_of_mem _ ho)) (by omega)
    refine ⟨pm2, kb2, pre ++ pre2, hok2, ?_⟩
    rw [List.length_cons, Nat.add_right_comm, e, e2, kvs_log_size_cons, List.append_assoc,
      Nat.add_assoc]

/-- C39. The scans of the key/value store end inside the partition. For every
store bound to a partition of less than `2^32` bytes, every content and every
state of the device: each iteration of the loops of `fram_kvs_scan` and
`fram_kvs_find_end` either leaves the loop or moves the offset forward by a
record of at least 22 bytes that ends inside the partition, so the loops end
(their result does not change once the fuel exceeds the partition size). On a
working partition of at most `2^32 - 65572` bytes holding bytes, every read the
loops issue (header, commit byte, key, value chunks) has at least one byte and
lies inside `[0, p.size)`, and the loops return `ESP_OK`. -/
theorem kvs_scans_terminate (K : Kconfig) (kvs : fram_kvs_t) (p : fram_partition_t)
    (key : List Nat) (hp : kvs.part = some p) (hsz : p.size < U32) :
    (∀ pm off st kb,
      (∃ e pm1, ∀ fuel, fram_kvs_scan_loop K kvs p key (fuel + 1) pm off st kb = (e, st, pm1)) ∨
      (∃ off1 pm1 st1 kb1, off + 22 ≤ off1 ∧ off1 ≤ p.size ∧
        ∀ fuel, fram_kvs_scan_loop K kvs p key (fuel + 1) pm off st kb
          = fram_kvs_scan_loop K kvs p key fuel pm1 off1 st1 kb1)) ∧
    (∀ pm off ns kb,
      (∃ e pm1, ∀ fuel,
        fram_kvs_find_end_loop K kvs p (fuel + 1) pm off ns kb = (e, off, ns, pm1)) ∨
      (∃ off1 pm1 ns1 kb1, off + 22 ≤ off1 ∧ off1 ≤ p.size ∧
        ∀ fuel, fram_kvs_find_end_loop K kvs p (fuel + 1) pm off ns kb
          = fram_kvs_find_end_loop K kvs p fuel pm1 off1 ns1 kb1)) ∧
    (∀ fuel pm st kb, p.size + 1 ≤ fuel →
      fram_kvs_scan_loop K kvs p key fuel pm 0 st kb
        = fram_kvs_scan_loop K kvs p key (p.size + 1) pm 0 st kb) ∧
    (∀ fuel pm ns kb, p.size + 1 ≤ fuel →
      fram_kvs_find_end_loop K kvs p fuel pm 0 ns kb
        = fram_kvs_find_end_loop K kvs p (p.size + 1) pm 0 ns kb) ∧
    (∀ pmem pm, PmOK pm p pmem → p.size + 65572 ≤ U32 → (∀ i, i < p.size → pmem i < 256) →
      (∀ fuel kb r, r ∈ fram_kvs_scan_loop_reads K kvs p fuel pm 0 kb → ReadFits p r) ∧
      (∀ fuel kb r, r ∈ fram_kvs_find_end_loop_reads K kvs p fuel pm 0 kb → ReadFits p r) ∧
      (∀ st kb, (fram_kvs_scan_loop K kvs p key (p.size + 1) pm 0 st kb).1 = ESP_OK) ∧
      (∀ ns kb, (fram_kvs_find_end_loop K kvs p (p.size + 1) pm 0 ns kb).1 = ESP_OK)) := by
  refine ⟨fun pm off st kb => ?_, fun pm off ns kb => ?_, fun fuel pm st kb hf => ?_,
    fun fuel pm ns kb hf => ?_, fun pmem pm h hb hbytes => ⟨fun fuel kb r hr => ?_,
      fun fuel kb r hr => ?_, fun st kb => ?_, fun ns kb => ?_⟩⟩
  · rcases kvs_scan_iter_step K kvs p key hp hsz (fun _ => True) (fun _ _ _ _ => trivial)
      pm off st kb trivial with ⟨e, pm1, _, hs⟩ | ⟨hfit, hk, pm1, st1, kb1, _, hs⟩
    · exact Or.inl ⟨e, pm1, hs⟩
    · exact Or.inr ⟨_, pm1, st1, kb1, by omega, hfit, hs⟩
  · rcases kvs_find_end_iter_step K kvs p hp hsz (fun _ => True) (fun _ _ _ _ => trivial)
      pm off ns kb trivial with ⟨e, pm1, _, hs⟩ | ⟨hfit, hk, pm1, kb1, _, hs⟩
    · exact Or.inl ⟨e, pm1, hs⟩
    · exact Or.inr ⟨_, pm1, _, kb1, by omega, hfit, hs⟩
  · exact kvs_scan_loop_fuel K kvs p key hp hsz fuel (p.size + 1) 0 st pm kb (Nat.zero_le _)
      (by omega) (by omega)
  · exact kvs_find_end_loop_fuel K kvs p hp hsz fuel (p.size + 1) 0 ns pm kb (Nat.zero_le _)
      (by omega) (by omega)
  · exact kvs_scan_reads_fit K kvs p pmem hp hb (kvs_bytes_value_len p pmem hbytes) fuel 0 pm kb
      h (Nat.zero_le _) r hr
  · exact kvs_find_end_reads_fit K kvs p pmem hp hb (kvs_bytes_value_len p pmem hbytes) fuel 0 pm
      kb h (Nat.zero_le _) r hr
  · obtain ⟨pm1, e, _⟩ := kvs_scan_walk K kvs p pmem key hp hb (kvs_bytes_value_len p pmem hbytes)
      (p.size + 1) 0 st pm kb h (Nat.zero_le _) (by omega)
    rw [e]
  · obtain ⟨pm1, e, _⟩ := kvs_find_end_walk K kvs p pmem hp hb (kvs_bytes_value_len p pmem hbytes)
      (p.size + 1) 0 ns pm kb h (Nat.zero_le _) (by omega)
    rw [e]

/-- Witness for C39: the store of `test_fram.c` on the erased partition `"kvs"`
of the example manager. -/
theorem kvs_scans_terminate_witness :
    example_kvs_part.size < U32 ∧
    ∀ fuel kb r, r ∈ fram_kvs_scan_loop_reads example_K
        { part := some example_kvs_part, magic := 0x4B56534D, write_offset := 0, next_seq := 0
          ready := true, mutex := SemaphoreHandle_t.free }
        example_kvs_part fuel example_pm 0 kb → ReadFits example_kvs_part r :=
  ⟨by decide,
    ((kvs_scans_terminate example_K
      { part := some example_kvs_part, magic := 0x4B56534D, write_offset := 0, next_seq := 0
        ready := true, mutex := SemaphoreHandle_t.free }
      example_kvs_part [0x61] rfl (by decide)).2.2.2.2 (fun _ => 0xFF) example_pm
      example_pm_kvs_ok (by decide) (fun _ _ => (by decide : (255 : Nat) < 256))).1⟩

/-- Counterexample to C39 as stated: on an erased partition of `2^32 - 2`
bytes, after `fram_kvs_init` and 171798691 calls `set("a", "one", 3)` that all
return `ESP_OK`, the log ends at offset `2^32 - 21`. There the loop condition
of `fram_kvs_scan` wraps to `0 <= size` and the loop issues the header read
`(2^32 - 21, 20)`, which does not lie inside the partition; the read is
rejected and the loop returns `ESP_ERR_INVALID_SIZE`. -/
theorem kvs_scans_terminate_counterexample :
    example_kvs_run example_big_pm example_big_ops =
      (ESP_OK, (example_kvs_run example_big_pm example_big_ops).2.1,
        (example_kvs_run example_big_pm example_big_ops).2.2) ∧
    (example_kvs_run example_big_pm example_big_ops).2.1.part = some example_big_part ∧
    (∃ pmem2, PmOK (example_kvs_run example_big_pm example_big_ops).2.2 example_big_part pmem2) ∧
    (4294967275, 20) ∈ fram_kvs_scan_loop_reads example_K
      (example_kvs_run example_big_pm example_big_ops).2.1 example_big_part
      (example_big_part.size + 1) (example_kvs_run example_big_pm example_big_ops).2.2 0 [] ∧
    ¬ ReadFits example_big_part (4294967275, 20) ∧
    (fram_kvs_scan_loop example_K (example_kvs_run example_big_pm example_big_ops).2.1
      example_big_part [0x61] (example_big_part.size + 1)
      (example_kvs_run example_big_pm example_big_ops).2.2 0
      { found := false, deleted := false, last_hdr := kvs_header_zero, last_offset := 0 } []).1
        = ESP_ERR_INVALID_SIZE := by
  obtain ⟨hinit, hrun, pmem2, hok2, ha2⟩ := example_kvs_run_ok example_big_pm example_big_part
    example_big_ops example_big_pm_ok example_big_find example_big_valid
    (by rw [example_big_size]; decide)
  refine ⟨hrun, ha2.part, ⟨pmem2, hok2⟩, ?_, fun hh => absurd hh.2 (by decide), ?_⟩
  · generalize (example_kvs_run example_big_pm example_big_ops).2.1 = kvs2 at ha2 ⊢
    generalize (example_kvs_run example_big_pm example_big_ops).2.2 = pm2 at hok2 ⊢
    obtain ⟨pm3, kb3, pre, hok3, e⟩ := kvs_scan_reads_prefix example_K kvs2 example_big_part
      pmem2 ha2.part ha2.magic_lt example_big_ops 0 4123168604 pm2 [] hok2 ha2.log ha2.valid
      (by rw [example_big_size]; decide)
    rw [example_big_length, example_big_size] at e
    have hf : example_big_part.size + 1 = 171798691 + 4123168604 := by decide
    rw [hf, e]
    apply List.mem_append_right
    show _ ∈ fram_kvs_scan_loop_reads example_K kvs2 example_big_part (4123168603 + 1) pm3
      (0 + 4294967275) kb3
    rw [fram_kvs_scan_loop_reads, if_pos (by decide)]
    exact List.mem_cons_self _ _
  · generalize (example_kvs_run example_big_pm example_big_ops).2.1 = kvs2 at ha2 ⊢
    generalize (example_kvs_run example_big_pm example_big_ops).2.2 = pm2 at hok2 ⊢
    obtain ⟨st1, pm3, kb3, hok3, _, hpre⟩ := kvs_scan_prefix example_K kvs2 example_big_part
      pmem2 [0x61] ha2.part ha2.magic_lt example_big_ops 0 4123168604 pm2
      { found := false, deleted := false, last_hdr := kvs_header_zero, last_offset := 0 } []
      none hok2 ha2.log ha2.valid (by rw [example_big_size]; decide) (Or.inl rfl)
    rw [example_big_length, example_big_size] at hpre
    have hbad := kvs_scan_loop_read_bad example_K kvs2 example_big_part pmem2 pm3 [0x61]
      4123168603 (0 + 4294967275) st1 kb3 ha2.part hok3 (by decide) (by decide)
    have hf : example_big_part.size + 1 = 171798691 + 4123168604 := by decide
    rw [hf, hpre, hbad]

/-! ## Ring recovery after appends -/

/-- The slot check reads only the bytes of its slot. -/
theorem ring_slot_check_frame (ring : fram_ring_t) (p : fram_partition_t) (pm : fram_pm_t)
    (pmem pmem1 : Nat → Nat) (slot : Nat) (g : RingGeom ring p) (h : PmOK pm p pmem)
    (hs : slot < ring.capacity)
    (hag : ∀ a, slot * ring.entry_size ≤ a → a < (slot + 1) * ring.entry_size →
      pmem1 a = pmem a) :
    ring_slot_check ring p pmem1 slot = ring_slot_check ring p pmem slot := by
  obtain ⟨ho, hco, hpo, hfit, hsz⟩ := ring_slot_offset_eq ring p pm pmem g h slot hs
  have hes := g.entry_size
  have h24 : RING_HEADER_SIZE = 24 := rfl
  have hexp : (slot + 1) * ring.entry_size = slot * ring.entry_size + ring.entry_size := by
    rw [Nat.add_mul, Nat.one_mul]
  have e1 : pmem1 (slot * ring.entry_size + RING_HEADER_SIZE + ring.max_payload)
      = pmem (slot * ring.entry_size + RING_HEADER_SIZE + ring.max_payload) :=
    hag _ (by omega) (by omega)
  have e2 : mem_read pmem1 (slot * ring.entry_size) RING_HEADER_SIZE
      = mem_read pmem (slot * ring.entry_size) RING_HEADER_SIZE :=
    mem_read_congr pmem1 pmem _ _ (fun i hi => hag _ (by omega) (by omega))
  unfold ring_slot_check
  rw [hco, hpo, ho]
  simp only [e1, e2]
  by_cases c : (fram_ring_header_of_bytes
      (mem_read pmem (slot * ring.entry_size) RING_HEADER_SIZE)).len > ring.max_payload
  · simp only [c, if_true]
  · have e3 : mem_read pmem1 (slot * ring.entry_size + RING_HEADER_SIZE)
        (fram_ring_header_of_bytes
          (mem_read pmem (slot * ring.entry_size) RING_HEADER_SIZE)).len
        = mem_read pmem (slot * ring.entry_size + RING_HEADER_SIZE)
          (fram_ring_header_of_bytes
            (mem_read pmem (slot * ring.entry_size) RING_HEADER_SIZE)).len :=
      mem_read_congr pmem1 pmem _ _ (fun i hi => hag _ (by omega) (by omega))
    rw [e3]

theorem ring_slot_seq_frame (ring : fram_ring_t) (p : fram_partition_t) (pm : fram_pm_t)
    (pmem pmem1 : Nat → Nat) (slot : Nat) (g : RingGeom ring p) (h : PmOK pm p pmem)
    (hs : slot < ring.capacity)
    (hag : ∀ a, slot * ring.entry_size ≤ a → a < (slot + 1) * ring.entry_size →
      pmem1 a = pmem a) :
    ring_slot_seq ring p pmem1 slot = ring_slot_seq ring p pmem slot := by
  unfold ring_slot_seq
  rw [ring_slot_check_frame ring p pm pmem pmem1 slot g h hs hag]

/-- A successful `fram_ring_append` was given a payload the slot can hold. -/
theorem ring_append_ok_len (ring : fram_ring_t) (pm : fram_pm_t) (payload : List Nat)
    (now : Nat) (h : (fram_ring_append ring pm payload now).1 = ESP_OK) :
    payload.length ≤ ring.max_payload ∧ payload.length ≤ UINT16_MAX := by
  unfold fram_ring_append at h
  by_cases c1 : (!ring.ready) = true
  · rw [if_pos c1] at h
    exact esp_err_t.noConfusion h
  rw [if_neg c1] at h
  by_cases c2 : payload.length > ring.max_payload ∨ payload.length > UINT16_MAX
  · rw [if_pos c2] at h
    exact esp_err_t.noConfusion h
  · omega

/-- Index arithmetic of the run behind the head slot. -/
theorem ring_back_step (S cap k : Nat) (hS : S < cap) (hk1 : 1 ≤ k) (hk : k ≤ cap) :
    ((S + 1) % cap + cap - k) % cap = (S + cap - (k - 1)) % cap := by
  by_cases h : S + 1 < cap
  · rw [Nat.mod_eq_of_lt h]
    have e : S + 1 + cap - k = S + cap - (k - 1) := by omega
    rw [e]
  · have e1 : S + 1 = cap := by omega
    rw [e1, Nat.mod_self]
    have e2 : S + cap - (k - 1) = (cap - k) + cap := by omega
    have e3 : 0 + cap - k = cap - k := by omega
    rw [e2, e3, Nat.add_mod_right]

theorem ring_back_ne (H cap k : Nat) (hH : H < cap) (hk1 : 1 ≤ k) (hk : k < cap) :
    (H + cap - k) % cap ≠ H := by
  by_cases h : k ≤ H
  · have e : H + cap - k = (H - k) + cap := by omega
    rw [e, Nat.add_mod_right, Nat.mod_eq_of_lt (by omega)]
    omega
  · rw [Nat.mod_eq_of_lt (by omega)]
    omega

theorem ring_back_zero (H cap : Nat) (hH : H < cap) : (H + cap - 0) % cap = H := by
  rw [Nat.sub_zero, Nat.add_mod_right, Nat.mod_eq_of_lt hH]

/-- A successful `fram_ring_append` on a working partition, in terms of the
sequence numbers read off the slots: the head slot now validates with
`head_seq`, every other slot is as before, and the ring has advanced. -/
theorem ring_append_view (ring : fram_ring_t) (p : fram_partition_t) (pm : fram_pm_t)
    (pmem : Nat → Nat) (payload : List Nat) (now : Nat)
    (g : RingGeom ring p) (h : PmOK pm p pmem) (hh : ring.head_slot < ring.capacity)
    (hq : ring.head_seq < U32)
    (hok : (fram_ring_append ring pm payload now).1 = ESP_OK) :
    ∃ pmem1, PmOK (fram_ring_append ring pm payload now).2.2 p pmem1 ∧
      RingGeom (fram_ring_append ring pm payload now).2.1 p ∧
      (fram_ring_append ring pm payload now).2.1.capacity = ring.capacity ∧
      (fram_ring_append ring pm payload now).2.1.entry_size = ring.entry_size ∧
      (fram_ring_append ring pm payload now).2.1.max_payload = ring.max_payload ∧
      (fram_ring_append ring pm payload now).2.1.magic = ring.magic ∧
      (fram_ring_append ring pm payload now).2.1.head_seq = (ring.head_seq + 1) % U32 ∧
      (fram_ring_append ring pm payload now).2.1.head_slot
        = ((ring.head_slot + 1) % U32) % ring.capacity ∧
      (fram_ring_append ring pm payload now).2.1.count
        = (if ring.count < ring.capacity then (ring.count + 1) % U32 else ring.count) ∧
      (fram_ring_append ring pm payload now).2.1.tail_slot
        = (if ring.count < ring.capacity then ring.tail_slot
           else ((ring.tail_slot + 1) % U32) % ring.capacity) ∧
      (∀ s, s < ring.capacity →
        ring_slot_seq ring p pmem1 s
          = if s = ring.head_slot then some ring.head_seq else ring_slot_seq ring p pmem s) := by
  obtain ⟨hl, hl16⟩ := ring_append_ok_len ring pm payload now hok
  obtain ⟨pm1, pmem1, happ, hok1, hrec, hframe⟩ :=
    ring_append_ok ring p pm pmem payload now g h hh hl hl16
  rw [happ]
  refine ⟨pmem1, hok1, ?_, ?_, ?_, ?_, ?_, ?_, ?_, ?_, ?_, fun s hs => ?_⟩
  · split_ifs <;>
      exact ⟨g.part, g.entry_size, g.capacity_pos, g.fits, g.magic, g.mutex, g.ready⟩
  · split_ifs <;> rfl
  · split_ifs <;> rfl
  · split_ifs <;> rfl
  · split_ifs <;> rfl
  · split_ifs <;> rfl
  · split_ifs <;> rfl
  · split_ifs <;> rfl
  · split_ifs <;> rfl
  · by_cases c : s = ring.head_slot
    · rw [if_pos c, c]
      exact ring_slot_seq_rec ring p pm1 pmem1 _ _ now payload g hok1 hh hq hl hl16 hrec
    · rw [if_neg c]
      refine ring_slot_seq_frame ring p pm pmem pmem1 s g h hs (fun a ha1 ha2 => hframe a ?_)
      rcases Nat.lt_or_gt_of_ne c with c2 | c2
      · have : (s + 1) * ring.entry_size ≤ ring.head_slot * ring.entry_size :=
          Nat.mul_le_mul_right _ c2
        exact Or.inl (by omega)
      · have : (ring.head_slot + 1) * ring.entry_size ≤ s * ring.entry_size :=
          Nat.mul_le_mul_right _ c2
        exact Or.inr (by omega)

/-- One successful append keeps the ring in agreement with what the recovery
computes from the slots, as long as `head_seq` does not wrap. -/
theorem ring_recovers_step (ring ring1 : fram_ring_t) (V V1 : Nat → Option Nat)
    (hcpos : 0 < ring.capacity) (hcU : ring.capacity + ring.capacity ≤ U32)
    (hinv : RingRecovers ring V) (hq : ring.head_seq + 1 < U32)
    (hcap : ring1.capacity = ring.capacity)
    (hseq : ring1.head_seq = (ring.head_seq + 1) % U32)
    (hhead : ring1.head_slot = ((ring.head_slot + 1) % U32) % ring.capacity)
    (hcount : ring1.count
      = (if ring.count < ring.capacity then (ring.count + 1) % U32 else ring.count))
    (htail : ring1.tail_slot
      = (if ring.count < ring.capacity then ring.tail_slot
         else ((ring.tail_slot + 1) % U32) % ring.capacity))
    (hV : ∀ s, s < ring.capacity →
      V1 s = if s = ring.head_slot then some ring.head_seq else V s) :
    RingRecovers ring1 V1 := by
  have hU : U32 = 4294967296 := U32_eq
  obtain ⟨cap, hcapd⟩ : ∃ cap, cap = ring.capacity := ⟨_, rfl⟩
  rw [← hcapd] at hcpos hcU hcap hhead hcount htail hV
  have hseq1 : ring1.head_seq = ring.head_seq + 1 := by
    rw [hseq]
    exact Nat.mod_eq_of_lt hq
  unfold RingRecovers at hinv ⊢
  rw [← hcapd] at hinv
  rw [hcap]
  rcases hinv with ⟨hnone, i1, i2, i3, i4⟩ | ⟨Q, S, hQ, hS, hVS, hmax, hleast, i1, i3, i2, i4, hrun,
    hstop⟩
  · rw [i1] at hhead hV
    rw [i2, i4, if_pos hcpos] at htail
    rw [i4, if_pos hcpos] at hcount
    rw [i3] at hseq1 hV
    have hc1 : ring1.count = 1 := by
      rw [hcount, hU]
    have hh1 : ring1.head_slot = 1 % cap := by
      rw [hhead, hU]
    have hV0 : V1 0 = some 0 := by
      rw [hV 0 hcpos, if_pos rfl]
    refine Or.inr ⟨0, 0, by rw [hU]; decide, hcpos, hV0, fun s q hs hsq => ?_,
      fun s hs => absurd hs (Nat.not_lt_zero _), hh1, hseq1, ?_, by rw [hc1]; omega,
      fun k hk => ?_, fun _ hn => ?_⟩
    · rw [hV s hs] at hsq
      by_cases c : s = 0
      · rw [if_pos c] at hsq
        have := Option.some.inj hsq
        omega
      · rw [if_neg c, hnone s hs] at hsq
        exact Option.noConfusion hsq
    · rw [htail, hh1, hc1]
      by_cases c : cap = 1
      · rw [c]
      · have e0 : 1 % cap = 1 := Nat.mod_eq_of_lt (by omega)
        have e : 1 + cap - 1 = cap := by omega
        rw [e0, e, Nat.mod_self]
    · rw [hc1] at hk
      have hk0 : k = 0 := by omega
      subst hk0
      refine ⟨Nat.le_refl _, ?_⟩
      rw [ring_back_zero 0 cap hcpos]
      exact hV0
    · rw [hc1] at hn
      omega
  · have hH : ring.head_slot < cap := by
      rw [i1]
      exact Nat.mod_lt _ hcpos
    have hcnt1 : 1 ≤ ring.count := by
      by_contra hc0
      have hz : ring.count = 0 := by omega
      apply hstop (by omega)
      rw [hz, ring_back_zero S cap hS, Nat.sub_zero]
      exact ⟨Nat.zero_le _, hVS⟩
    rw [i3] at hseq1 hV hq
    have hh1 : ring1.head_slot = (ring.head_slot + 1) % cap := by
      rw [hhead, Nat.mod_eq_of_lt (show ring.head_slot + 1 < U32 by omega)]
    have hVH : V1 ring.head_slot = some (Q + 1) := by
      rw [hV _ hH, if_pos rfl]
    refine Or.inr ⟨Q + 1, ring.head_slot, hq, hH, hVH, fun s q hs hsq => ?_, fun s hs hsq => ?_,
      hh1, hseq1, ?_, ?_, fun k hk => ?_, fun hn hcon => ?_⟩
    · rw [hV s hs] at hsq
      by_cases c : s = ring.head_slot
      · rw [if_pos c] at hsq
        have := Option.some.inj hsq
        omega
      · rw [if_neg c] at hsq
        have := hmax s q hs hsq
        omega
    · rw [hV s (by omega), if_neg (by omega)] at hsq
      have := hmax s (Q + 1) (by omega) hsq
      omega
    · by_cases c : ring.count < cap
      · rw [if_pos c] at htail hcount
        have hc1 : ring1.count = ring.count + 1 := by
          rw [hcount]
          exact Nat.mod_eq_of_lt (by omega)
        rw [htail, hh1, hc1, i2]
        exact ring_tail_step _ _ _ hH c
      · rw [if_neg c] at htail hcount
        have hfull : ring.count = cap := by omega
        rw [hfull, ring_tail_full _ _ hH] at i2
        rw [htail, hh1, hcount, hfull, i2,
          Nat.mod_eq_of_lt (show ring.head_slot + 1 < U32 by omega)]
        exact (ring_tail_full _ _ (Nat.mod_lt _ hcpos)).symm
    · rw [hcount]
      split_ifs with c
      · rw [Nat.mod_eq_of_lt (by omega)]
        omega
      · exact i4
    · have hk2 : k < ring.count + 1 ∧ k < cap + 1 := by
        rw [hcount] at hk
        split_ifs at hk with c
        · rw [Nat.mod_eq_of_lt (by omega)] at hk
          omega
        · omega
      by_cases k0 : k = 0
      · subst k0
        rw [ring_back_zero _ cap hH]
        exact ⟨Nat.zero_le _, hVH⟩
      · have hkc : k < cap := by
          by_contra hc
          have : k = cap := by omega
          rw [hcount] at hk
          split_ifs at hk with c
          · rw [Nat.mod_eq_of_lt (by omega)] at hk
            omega
          · omega
        have hne := ring_back_ne ring.head_slot cap k hH (by omega) hkc
        have hslot : (ring.head_slot + cap - k) % cap = (S + cap - (k - 1)) % cap := by
          rw [i1]
          exact ring_back_step S cap k hS (by omega) (by omega)
        obtain ⟨r1, r2⟩ := hrun (k - 1) (by omega)
        refine ⟨by omega, ?_⟩
        rw [hV _ (Nat.mod_lt _ hcpos), if_neg hne, hslot, r2]
        congr 1
        omega
    · have hc : ring.count < cap := by
        by_contra hc
        rw [hcount, if_neg hc] at hn
        omega
      have hc1 : ring1.count = ring.count + 1 := by
        rw [hcount, if_pos hc]
        exact Nat.mod_eq_of_lt (by omega)
      rw [hc1] at hn hcon
      have hne := ring_back_ne ring.head_slot cap (ring.count + 1) hH (by omega) hn
      have hslot : (ring.head_slot + cap - (ring.count + 1)) % cap
          = (S + cap - ring.count) % cap := by
        rw [i1]
        exact ring_back_step S cap (ring.count + 1) hS (by omega) (by omega)
      obtain ⟨c1, c2⟩ := hcon
      rw [hV _ (Nat.mod_lt _ hcpos), if_neg hne, hslot] at c2
      apply hstop hc
      refine ⟨by omega, ?_⟩
      rw [c2]
      congr 1
      omega

/-- A view of the slots either has no valid slot, or has a highest sequence
number and a lowest slot that carries it. -/
theorem ring_view_cases (V : Nat → Option Nat) (cap : Nat) :
    (∀ s, s < cap → V s = none) ∨
    (∃ Q S, S < cap ∧ V S = some Q ∧ (∀ s q, s < cap → V s = some q → q ≤ Q) ∧
      (∀ s, s < S → V s ≠ some Q)) := by
  have hscan := ring_scan_view_least V cap 0 { highest_seq := 0, highest_slot := 0, found := false }
    (fun hx => Bool.noConfusion hx) (fun _ s hs => absurd hs (Nat.not_lt_zero _))
  rw [Nat.zero_add] at hscan
  obtain ⟨s1, s2⟩ := hscan
  cases hf : (ring_scan_view V (List.range' 0 cap)
      { highest_seq := 0, highest_slot := 0, found := false }).found with
  | false => exact Or.inl (s2 hf)
  | true =>
    obtain ⟨a1, a2, a3⟩ := s1 hf
    refine Or.inr ⟨_, _, a1, a2, fun s q hs hq => (a3 s hs q hq).1, fun s hs hq => ?_⟩
    have := (a3 s (by omega) _ hq).2 hs
    omega

theorem ring_recovered_geom_full (p : fram_partition_t) (cfg : fram_ring_config_t)
    (V : Nat → Option Nat) (g : RingGeom (ring_empty p cfg) p) :
    RingGeom (ring_recovered p cfg V) p := by
  unfold ring_recovered
  simp only
  split_ifs
  · exact g
  · exact ⟨g.part, g.entry_size, g.capacity_pos, g.fits, g.magic, g.mutex, g.ready⟩

/-- A ring `fram_ring_init` built on a working partition has the geometry of
the configuration, and the partition is left working. -/
theorem ring_init_geom (K : Kconfig) (ring0 ring1 : fram_ring_t) (pm pm1 : fram_pm_t)
    (p : fram_partition_t) (pmem : Nat → Nat) (cfg : fram_ring_config_t)
    (hK : K.FRAM_RING_MAX_PAYLOAD + RING_HEADER_SIZE + 1 < U32) (hmagic : cfg.magic < U32)
    (h : PmOK pm p pmem) (hfind : fram_pm_find pm cfg.partition_name = some p)
    (hinit : fram_ring_init K ring0 pm cfg = (ESP_OK, ring1, pm1)) :
    RingGeom ring1 p ∧ PmOK pm1 p pmem ∧
    ring1.capacity = (ring_empty p cfg).capacity ∧
    ring1.entry_size = (ring_empty p cfg).entry_size ∧
    ring1.max_payload = (ring_empty p cfg).max_payload ∧
    ring1.magic = (ring_empty p cfg).magic := by
  obtain ⟨hmp, hle, hcap⟩ := ring_init_ok_cfg K ring0 ring1 pm pm1 p cfg hfind hK hinit
  obtain ⟨pmx, hi, hokx⟩ := ring_init_check K ring0 pm p pmem cfg hfind h hmp hle hK hmagic hcap
  rw [hinit] at hi
  have hr1 : ring1 = ring_recovered p cfg (ring_slot_seq (ring_empty p cfg) p pmem) :=
    (Prod.mk.inj (Prod.mk.inj hi).2).1
  have hp1 : pm1 = pmx := (Prod.mk.inj (Prod.mk.inj hi).2).2
  obtain ⟨g, _⟩ := ring_empty_geom K p cfg hle hK hmagic hcap
  have g1 : RingGeom ring1 p := by
    rw [hr1]
    exact ring_recovered_geom_full p cfg _ g
  obtain ⟨gp, ge, gm, gg, gc⟩ := ring_recovered_geom p cfg
    (ring_slot_seq (ring_empty p cfg) p pmem)
  rw [← hr1] at gp ge gm gg gc
  exact ⟨g1, by rw [hp1]; exact hokx, gc, ge, gm, gg⟩

/-- A ring `fram_ring_init` built on a working partition none of whose valid
slots carries the sequence number `2^32 - 1` agrees with what the recovery
computes from the slots. -/
theorem ring_init_recovers (K : Kconfig) (ring0 ring1 : fram_ring_t) (pm pm1 : fram_pm_t)
    (p : fram_partition_t) (pmem : Nat → Nat) (cfg : fram_ring_config_t)
    (hK : K.FRAM_RING_MAX_PAYLOAD + RING_HEADER_SIZE + 1 < U32) (hmagic : cfg.magic < U32)
    (h : PmOK pm p pmem) (hfind : fram_pm_find pm cfg.partition_name = some p)
    (hinit : fram_ring_init K ring0 pm cfg = (ESP_OK, ring1, pm1))
    (hnw : ∀ s q, s < ring1.capacity → ring_slot_seq ring1 p pmem s = some q → q + 1 < U32) :
    RingGeom ring1 p ∧ PmOK pm1 p pmem ∧ RingRecovers ring1 (ring_slot_seq ring1 p pmem) ∧
    ring1.capacity = (ring_empty p cfg).capacity ∧
    ring1.entry_size = (ring_empty p cfg).entry_size ∧
    ring1.max_payload = (ring_empty p cfg).max_payload ∧
    ring1.magic = (ring_empty p cfg).magic := by
  obtain ⟨hmp, hle, hcap⟩ := ring_init_ok_cfg K ring0 ring1 pm pm1 p cfg hfind hK hinit
  obtain ⟨pmx, hi, hokx⟩ := ring_init_check K ring0 pm p pmem cfg hfind h hmp hle hK hmagic hcap
  rw [hinit] at hi
  have hr1 : ring1 = ring_recovered p cfg (ring_slot_seq (ring_empty p cfg) p pmem) :=
    (Prod.mk.inj (Prod.mk.inj hi).2).1
  have hp1 : pm1 = pmx := (Prod.mk.inj (Prod.mk.inj hi).2).2
  obtain ⟨g, _⟩ := ring_empty_geom K p cfg hle hK hmagic hcap
  have g1 : RingGeom ring1 p := by
    rw [hr1]
    exact ring_recovered_geom_full p cfg _ g
  obtain ⟨gp, ge, gm, gg, gc⟩ := ring_recovered_geom p cfg
    (ring_slot_seq (ring_empty p cfg) p pmem)
  rw [← hr1] at gp ge gm gg gc
  obtain ⟨_, r2, _, r4⟩ := ring_init_recovery K ring0 ring1 pm pm1 p pmem cfg hK hmagic h hfind
    hinit
  refine ⟨g1, by rw [hp1]; exact hokx, ?_, gc, ge, gm, gg⟩
  rcases ring_view_cases (ring_slot_seq ring1 p pmem) ring1.capacity with hn | ⟨Q, S, hS, hVS,
    hmax, hleast⟩
  · exact Or.inl ⟨hn, r2 hn⟩
  · have hQ := hnw S Q hS hVS
    obtain ⟨a1, a2, a3, a4, a5, a6⟩ := r4 Q S (by omega) hS hVS hmax hleast
    rw [Nat.mod_eq_of_lt hQ] at a2
    exact Or.inr ⟨Q, S, hQ, hS, hVS, hmax, hleast, a1, a2, a3, a4, a5, a6⟩

/-- A second `fram_ring_init` on a working partition whose slots the ring
agrees with: it returns `ESP_OK` and rebuilds the log fields of the ring. -/
theorem ring_reinit_recovers (K : Kconfig) (ringX ring2 : fram_ring_t) (pm2 : fram_pm_t)
    (p : fram_partition_t) (pmem2 : Nat → Nat) (cfg : fram_ring_config_t)
    (hK : K.FRAM_RING_MAX_PAYLOAD + RING_HEADER_SIZE + 1 < U32) (hmagic : cfg.magic < U32)
    (hmp : 0 < cfg.max_payload) (hle : cfg.max_payload ≤ K.FRAM_RING_MAX_PAYLOAD)
    (hcap : RING_HEADER_SIZE + cfg.max_payload + 1 ≤ p.size)
    (h2 : PmOK pm2 p pmem2) (hfind2 : fram_pm_find pm2 cfg.partition_name = some p)
    (e1 : ring2.capacity = (ring_empty p cfg).capacity)
    (e2 : ring2.entry_size = (ring_empty p cfg).entry_size)
    (e3 : ring2.max_payload = (ring_empty p cfg).max_payload)
    (e4 : ring2.magic = (ring_empty p cfg).magic)
    (hinv : RingRecovers ring2 (ring_slot_seq ring2 p pmem2)) :
    ∃ ring3 pm3, fram_ring_init K ringX pm2 cfg = (ESP_OK, ring3, pm3) ∧
      ring3.head_slot = ring2.head_slot ∧ ring3.tail_slot = ring2.tail_slot ∧
      ring3.head_seq = ring2.head_seq ∧ ring3.count = ring2.count := by
  obtain ⟨pm3, hi, _⟩ := ring_init_check K ringX pm2 p pmem2 cfg hfind2 h2 hmp hle hK hmagic hcap
  obtain ⟨ring3, hr3⟩ : ∃ ring3, ring3
    = ring_recovered p cfg (ring_slot_seq (ring_empty p cfg) p pmem2) := ⟨_, rfl⟩
  rw [← hr3] at hi
  obtain ⟨gp, ge, gm, gg, gc⟩ := ring_recovered_geom p cfg
    (ring_slot_seq (ring_empty p cfg) p pmem2)
  rw [← hr3] at gp ge gm gg gc
  have hVeq : ring_slot_seq ring3 p pmem2 = ring_slot_seq ring2 p pmem2 := by
    funext s
    exact ring_slot_seq_congr _ _ p pmem2 s (by rw [ge, e2]) (by rw [gm, e3]) (by rw [gg, e4])
  have hc : ring3.capacity = ring2.capacity := by rw [gc, e1]
  obtain ⟨_, r2, _, r4⟩ := ring_init_recovery K ringX ring3 pm2 pm3 p pmem2 cfg hK hmagic h2
    hfind2 hi
  rw [hVeq, hc] at r2 r4
  refine ⟨ring3, pm3, hi, ?_⟩
  rcases hinv with ⟨hn, i1, i2, i3, i4⟩ | ⟨Q, S, hQ, hS, hVS, hmax, hleast, i1, i3, i2, i4, hrun,
    hstop⟩
  · obtain ⟨a1, a2, a3, a4⟩ := r2 hn
    rw [a1, a2, a3, a4, i1, i2, i3, i4]
    exact ⟨rfl, rfl, rfl, rfl⟩
  · obtain ⟨a1, a2, a3, a4, a5, a6⟩ := r4 Q S (by omega) hS hVS hmax hleast
    rw [Nat.mod_eq_of_lt hQ] at a2
    have hcount : ring3.count = ring2.count := by
      rcases Nat.lt_trichotomy ring3.count ring2.count with c | c | c
      · exfalso
        obtain ⟨b1, b2⟩ := hrun ring3.count c
        exact a6 (by omega) ⟨b1, b2⟩
      · exact c
      · exfalso
        obtain ⟨b1, b2⟩ := a5 ring2.count c
        exact hstop (by omega) ⟨b1, b2⟩
    refine ⟨by rw [a1, i1], ?_, by rw [a2, i3], hcount⟩
    rw [a3, i2, a1, i1, hcount]

theorem ring_recovers_head (ring : fram_ring_t) (V : Nat → Option Nat)
    (hcpos : 0 < ring.capacity) (hinv : RingRecovers ring V) :
    ring.head_slot < ring.capacity := by
  rcases hinv with ⟨_, i1, _⟩ | ⟨Q, S, _, _, _, _, _, i1, _⟩
  · rw [i1]
    exact hcpos
  · rw [i1]
    exact Nat.mod_lt _ hcpos

/-- A run of successful appends that does not wrap `head_seq` keeps the ring in
agreement with what the recovery computes from the slots. -/
theorem ring_append_all_recovers (p : fram_partition_t) :
    ∀ (entries : List (List Nat × Nat)) (ring ring2 : fram_ring_t) (pm pm2 : fram_pm_t)
      (pmem : Nat → Nat),
      RingGeom ring p → PmOK pm p pmem → RingRecovers ring (ring_slot_seq ring p pmem) →
      ring.head_seq + entries.length < U32 →
      fram_ring_append_all ring pm entries = (ESP_OK, ring2, pm2) →
      ∃ pmem2, PmOK pm2 p pmem2 ∧ RingRecovers ring2 (ring_slot_seq ring2 p pmem2) ∧
        ring2.capacity = ring.capacity ∧ ring2.entry_size = ring.entry_size ∧
        ring2.max_payload = ring.max_payload ∧ ring2.magic = ring.magic := by
  intro entries
  induction entries with
  | nil =>
    intro ring ring2 pm pm2 pmem g h hinv _ happ
    have e : (ESP_OK, ring, pm) = (ESP_OK, ring2, pm2) := happ
    obtain ⟨e1, e2⟩ := Prod.mk.inj (Prod.mk.inj e).2
    subst e1
    subst e2
    exact ⟨pmem, h, hinv, rfl, rfl, rfl, rfl⟩
  | cons e rest ih =>
    intro ring ring2 pm pm2 pmem g h hinv hq happ
    rw [List.length_cons] at hq
    rw [fram_ring_append_all] at happ
    by_cases c : (fram_ring_append ring pm e.1 e.2).1 ≠ ESP_OK
    · rw [if_pos c] at happ
      rw [happ] at c
      exact absurd rfl c
    rw [if_neg c] at happ
    have hok := not_not.mp c
    have hh := ring_recovers_head ring _ g.capacity_pos hinv
    obtain ⟨pmem1, hok1, g1, a1, a2, a3, a4, a5, a6, a7, a8, hV⟩ := ring_append_view ring p pm
      pmem e.1 e.2 g h hh (by omega) hok
    have hVeq : ∀ s, ring_slot_seq (fram_ring_append ring pm e.1 e.2).2.1 p pmem1 s
        = ring_slot_seq ring p pmem1 s :=
      fun s => ring_slot_seq_congr _ _ p pmem1 s a2 a3 a4
    have hinv1 := ring_recovers_step ring (fram_ring_append ring pm e.1 e.2).2.1
      (ring_slot_seq ring p pmem) (ring_slot_seq (fram_ring_append ring pm e.1 e.2).2.1 p pmem1)
      g.capacity_pos (ring_capacity_small ring p pm pmem g h) hinv (by omega) a1 a5 a6 a7 a8
      (fun s hs => by rw [hVeq s]; exact hV s hs)
    have hq1 : (fram_ring_append ring pm e.1 e.2).2.1.head_seq + rest.length < U32 := by
      rw [a5, Nat.mod_eq_of_lt (by omega)]
      omega
    obtain ⟨pmem2, hok2, hinv2, b1, b2, b3, b4⟩ := ih _ ring2 _ pm2 pmem1 g1 hok1 hinv1 hq1 happ
    exact ⟨pmem2, hok2, hinv2, by rw [b1, a1], by rw [b2, a2], by rw [b3, a3], by rw [b4, a4]⟩

/-- C31. Ring recovery reproduces the in-memory state. For every content of a
working partition on which `fram_ring_init` succeeds, and every run of
successful `fram_ring_append` calls after it that does not carry `head_seq`
past `2^32 - 1`: provided that, when the run is not empty, no slot of the
initial content validates with the sequence number `2^32 - 1`, a further
`fram_ring_init` on the resulting media returns `ESP_OK` with the `head_slot`,
`tail_slot`, `head_seq` and `count` of the in-memory ring. -/
theorem ring_recovery_reproduces (K : Kconfig) (ring0 ring1 ring2 ringX : fram_ring_t)
    (pm pm1 pm2 : fram_pm_t) (p : fram_partition_t) (pmem : Nat → Nat)
    (cfg : fram_ring_config_t) (entries : List (List Nat × Nat))
    (hK : K.FRAM_RING_MAX_PAYLOAD + RING_HEADER_SIZE + 1 < U32) (hmagic : cfg.magic < U32)
    (h : PmOK pm p pmem) (hfind : fram_pm_find pm cfg.partition_name = some p)
    (hinit : fram_ring_init K ring0 pm cfg = (ESP_OK, ring1, pm1))
    (happ : fram_ring_append_all ring1 pm1 entries = (ESP_OK, ring2, pm2))
    (hseq : ring1.head_seq + entries.length < U32)
    (hnw : entries ≠ [] → ∀ s q, s < ring1.capacity →
      ring_slot_seq ring1 p pmem s = some q → q + 1 < U32) :
    ∃ ring3 pm3, fram_ring_init K ringX pm2 cfg = (ESP_OK, ring3, pm3) ∧
      ring3.head_slot = ring2.head_slot ∧ ring3.tail_slot = ring2.tail_slot ∧
      ring3.head_seq = ring2.head_seq ∧ ring3.count = ring2.count := by
  obtain ⟨hmp, hle, hcap⟩ := ring_init_ok_cfg K ring0 ring1 pm pm1 p cfg hfind hK hinit
  have hs1 := fram_ring_init_same K ring0 pm cfg
  rw [hinit] at hs1
  have hs2 := fram_ring_append_all_same entries ring1 pm1
  rw [happ] at hs2
  have hfind1 : fram_pm_find pm1 cfg.partition_name = some p := by
    rw [fram_pm_find_same pm pm1 _ hs1]
    exact hfind
  have hfind2 : fram_pm_find pm2 cfg.partition_name = some p := by
    rw [fram_pm_find_same pm1 pm2 _ hs2]
    exact hfind1
  by_cases hnil : entries = []
  · subst hnil
    have e : (ESP_OK, ring1, pm1) = (ESP_OK, ring2, pm2) := happ
    obtain ⟨e1, e2⟩ := Prod.mk.inj (Prod.mk.inj e).2
    subst e1
    subst e2
    obtain ⟨pmx, hi, hokx⟩ := ring_init_check K ring0 pm p pmem cfg hfind h hmp hle hK hmagic hcap
    rw [hinit] at hi
    have hr1 : ring1 = ring_recovered p cfg (ring_slot_seq (ring_empty p cfg) p pmem) :=
      (Prod.mk.inj (Prod.mk.inj hi).2).1
    have hp1 : pm1 = pmx := (Prod.mk.inj (Prod.mk.inj hi).2).2
    obtain ⟨pm3, hi3, _⟩ := ring_init_check K ringX pm1 p pmem cfg hfind1 (by rw [hp1]; exact hokx)
      hmp hle hK hmagic hcap
    rw [← hr1] at hi3
    exact ⟨ring1, pm3, hi3, rfl, rfl, rfl, rfl⟩
  · obtain ⟨g1, hok1, hinv1, c1, c2, c3, c4⟩ := ring_init_recovers K ring0 ring1 pm pm1 p pmem cfg
      hK hmagic h hfind hinit (hnw hnil)
    obtain ⟨pmem2, hok2, hinv2, b1, b2, b3, b4⟩ := ring_append_all_recovers p entries ring1 ring2
      pm1 pm2 pmem g1 hok1 hinv1 hseq happ
    exact ring_reinit_recovers K ringX ring2 pm2 p pmem2 cfg hK hmagic hmp hle hcap hok2 hfind2
      (by rw [b1, c1]) (by rw [b2, c2]) (by rw [b3, c3]) (by rw [b4, c4]) hinv2

/-! ### The ring record with the last sequence number -/

theorem example_ring_last_pm_ok :
    PmOK example_ring_last_seq_pm example_ring_part example_ring_last_seq_mem :=
  ⟨rfl, by decide, _, 32768, ⟨rfl, rfl, rfl, rfl, by decide, rfl⟩, by decide, fun i _ => by
    show (if 944 + i < 944 then 0xFF else example_ring_last_seq_mem (944 + i - 944)) = _
    rw [if_neg (by omega), Nat.add_sub_cancel_left]⟩

theorem example_ring_last_find :
    fram_pm_find example_ring_last_seq_pm example_ring_cfg.partition_name
      = some example_ring_part := by
  decide

set_option maxRecDepth 100000 in
theorem example_ring_last_crc :
    fram_crc32_le 0 [71, 78, 73, 82, 255, 255, 255, 255, 0, 0, 0, 0, 0, 0, 0, 0, 0, 0, 0, 0]
      = 3257420882 := by
  rw [fram_crc32_le_eq]
  simp [List.replicate, List.foldl, crc32_byte, crc32_bit, U32]

theorem example_ring_last_bytes :
    (ring_header_for 0x52494E47 4294967295 0 []).to_bytes = example_ring_last_seq_header := by
  have hc : (ring_header_for 0x52494E47 4294967295 0 []).crc32 = 3257420882 := by
    show fram_crc32_le 0 ([71, 78, 73, 82, 255, 255, 255, 255, 0, 0, 0, 0, 0, 0, 0, 0, 0, 0, 0, 0]
      ++ []) = 3257420882
    rw [List.append_nil]
    exact example_ring_last_crc
  unfold fram_ring_header_t.to_bytes
  rw [hc]
  rfl

theorem example_ring_last_geom :
    RingGeom (ring_empty example_ring_part example_ring_cfg) example_ring_part ∧
    (ring_empty example_ring_part example_ring_cfg).capacity = 99 ∧
    (ring_empty example_ring_part example_ring_cfg).entry_size = 41 ∧
    (ring_empty example_ring_part example_ring_cfg).max_payload = 16 ∧
    (ring_empty example_ring_part example_ring_cfg).magic = 0x52494E47 :=
  ⟨(ring_empty_geom example_K example_ring_part example_ring_cfg (by decide) (by decide)
    (by decide) (by decide)).1, by decide, by decide, rfl, rfl⟩

/-- The slots of the content: slot 0 validates with the sequence number
`2^32 - 1`, no other slot validates. -/
theorem example_ring_last_view (s : Nat) (hs : s < 99) :
    ring_slot_seq (ring_empty example_ring_part example_ring_cfg) example_ring_part
      example_ring_last_seq_mem s = if s = 0 then some 4294967295 else none := by
  obtain ⟨g, gc, ge, gm, gg⟩ := example_ring_last_geom
  by_cases c : s = 0
  · rw [if_pos c, c]
    refine ring_slot_seq_rec _ example_ring_part example_ring_last_seq_pm
      example_ring_last_seq_mem 0 4294967295 0 [] g example_ring_last_pm_ok (by rw [gc]; decide)
      (by decide) (Nat.zero_le _) (Nat.zero_le _) ⟨?_, ?_⟩
    · rw [gg, example_ring_last_bytes]
      rfl
    · rfl
  · rw [if_neg c]
    refine ring_slot_seq_fresh _ example_ring_part example_ring_last_seq_pm
      example_ring_last_seq_mem s g example_ring_last_pm_ok (by rw [gc]; exact hs) ?_
    rw [ge, gm]
    have h24 : RING_HEADER_SIZE = 24 := rfl
    rw [h24]
    unfold example_ring_last_seq_mem
    rw [mem_write_outside _ _ _ _ (Or.inr (by simp only [List.length_singleton]; omega)),
      mem_write_outside _ _ _ _ (Or.inr (by
        show 0 + 24 ≤ s * 41 + 24 + 16
        omega))]
    decide

/-- The first `fram_ring_init` on the content with the last sequence number:
it succeeds, with the geometry of the configuration, `head_slot = 1` and
`head_seq = 0`. -/
theorem example_ring_last_init :
    example_ring_last_seq_init
      = (ESP_OK, example_ring_last_seq_init.2.1, example_ring_last_seq_init.2.2) ∧
    RingGeom example_ring_last_seq_init.2.1 example_ring_part ∧
    PmOK example_ring_last_seq_init.2.2 example_ring_part example_ring_last_seq_mem ∧
    example_ring_last_seq_init.2.1.capacity = 99 ∧
    example_ring_last_seq_init.2.1.entry_size
      = (ring_empty example_ring_part example_ring_cfg).entry_size ∧
    example_ring_last_seq_init.2.1.max_payload
      = (ring_empty example_ring_part example_ring_cfg).max_payload ∧
    example_ring_last_seq_init.2.1.magic
      = (ring_empty example_ring_part example_ring_cfg).magic ∧
    example_ring_last_seq_init.2.1.head_slot = 1 ∧
    example_ring_last_seq_init.2.1.head_seq = 0 := by
  obtain ⟨g, gc, ge, gm, gg⟩ := example_ring_last_geom
  obtain ⟨pmx, hi, _⟩ := ring_init_check example_K example_ring0 example_ring_last_seq_pm
    example_ring_part example_ring_last_seq_mem example_ring_cfg example_ring_last_find
    example_ring_last_pm_ok (by decide) (by decide) (by decide) (by decide) (by decide)
  have hinit : example_ring_last_seq_init
      = (ESP_OK, example_ring_last_seq_init.2.1, example_ring_last_seq_init.2.2) := by
    apply triple_eta_ok
    unfold example_ring_last_seq_init
    rw [hi]
  obtain ⟨g1, hok1, c1, c2, c3, c4⟩ := ring_init_geom example_K example_ring0 _
    example_ring_last_seq_pm _ example_ring_part example_ring_last_seq_mem example_ring_cfg
    (by decide) (by decide) example_ring_last_pm_ok example_ring_last_find hinit
  have hcap : example_ring_last_seq_init.2.1.capacity = 99 := by rw [c1, gc]
  have hV : ∀ s, s < 99 → ring_slot_seq example_ring_last_seq_init.2.1 example_ring_part
      example_ring_last_seq_mem s = if s = 0 then some 4294967295 else none := by
    intro s hs
    rw [ring_slot_seq_congr _ (ring_empty example_ring_part example_ring_cfg) _ _ s c2 c3 c4]
    exact example_ring_last_view s hs
  obtain ⟨_, _, _, r4⟩ := ring_init_recovery example_K example_ring0 _ example_ring_last_seq_pm _
    example_ring_part example_ring_last_seq_mem example_ring_cfg (by decide) (by decide)
    example_ring_last_pm_ok example_ring_last_find hinit
  rw [hcap] at r4
  obtain ⟨a1, a2, _⟩ := r4 4294967295 0 (by decide) (by decide)
    (by rw [hV 0 (by decide), if_pos rfl])
    (fun s q hs hq => by
      rw [hV s hs] at hq
      by_cases c : s = 0
      · rw [if_pos c] at hq
        have := Option.some.inj hq
        omega
      · rw [if_neg c] at hq
        exact Option.noConfusion hq)
    (fun s hs => absurd hs (Nat.not_lt_zero _))
  exact ⟨hinit, g1, hok1, hcap, c2, c3, c4, a1, a2⟩

/-- The append after the first `fram_ring_init` on the content with the last
sequence number, and the second `fram_ring_init` on the media it leaves. -/
theorem example_ring_last_run :
    example_ring_last_seq_run
      = (ESP_OK, example_ring_last_seq_run.2.1, example_ring_last_seq_run.2.2) ∧
    example_ring_last_seq_run.2.1.head_seq = 1 ∧
    example_ring_last_seq_run.2.1.head_slot = 2 ∧
    ∃ ring3 pm3, fram_ring_init example_K example_ring0 example_ring_last_seq_run.2.2
        example_ring_cfg = (ESP_OK, ring3, pm3) ∧
      ring3.head_seq = 0 ∧ ring3.head_slot = 1 := by
  obtain ⟨hinit, g1, hok1, hcap, c2, c3, c4, i1, i2⟩ := example_ring_last_init
  obtain ⟨g, gc, ge, gm, gg⟩ := example_ring_last_geom
  have hmp : example_ring_last_seq_init.2.1.max_payload = 16 := by rw [c3, gm]
  have hh : example_ring_last_seq_init.2.1.head_slot
      < example_ring_last_seq_init.2.1.capacity := by
    rw [i1, hcap]
    decide
  obtain ⟨pmA, pmemA, happ, _⟩ := ring_append_ok example_ring_last_seq_init.2.1 example_ring_part
    example_ring_last_seq_init.2.2 example_ring_last_seq_mem [0x01] 0 g1 hok1 hh
    (by rw [hmp]; decide) (by decide)
  have hok : (fram_ring_append example_ring_last_seq_init.2.1 example_ring_last_seq_init.2.2
      [0x01] 0).1 = ESP_OK := by rw [happ]
  have hrun : example_ring_last_seq_run
      = fram_ring_append example_ring_last_seq_init.2.1 example_ring_last_seq_init.2.2
          [0x01] 0 := by
    unfold example_ring_last_seq_run
    rw [fram_ring_append_all, if_neg (fun hn => hn hok), fram_ring_append_all]
    exact (triple_eta_ok _ hok).symm
  obtain ⟨pmem1, hok2, g2, a1, a2, a3, a4, a5, a6, _, _, hV⟩ := ring_append_view
    example_ring_last_seq_init.2.1 example_ring_part example_ring_last_seq_init.2.2
    example_ring_last_seq_mem [0x01] 0 g1 hok1 hh (by rw [i2]; decide) hok
  rw [← hrun] at hok hok2 g2 a1 a2 a3 a4 a5 a6
  rw [i2] at a5 hV
  rw [i1, hcap] at a6 hV
  have hs1 := fram_ring_init_same example_K example_ring0 example_ring_last_seq_pm
    example_ring_cfg
  have hs2 := fram_ring_append_all_same [([0x01], 0)] example_ring_last_seq_init.2.1
    example_ring_last_seq_init.2.2
  have hfind2 : fram_pm_find example_ring_last_seq_run.2.2 example_ring_cfg.partition_name
      = some example_ring_part := by
    unfold example_ring_last_seq_run
    rw [fram_pm_find_same _ _ _ hs2]
    unfold example_ring_last_seq_init
    rw [fram_pm_find_same _ _ _ hs1]
    exact example_ring_last_find
  obtain ⟨pm3, hi3, _⟩ := ring_init_check example_K example_ring0 example_ring_last_seq_run.2.2
    example_ring_part pmem1 example_ring_cfg hfind2 hok2 (by decide) (by decide) (by decide)
    (by decide) (by decide)
  obtain ⟨g3, _, d1, d2, d3, d4⟩ := ring_init_geom example_K example_ring0 _
    example_ring_last_seq_run.2.2 pm3 example_ring_part pmem1 example_ring_cfg
    (by decide) (by decide) hok2 hfind2 hi3
  obtain ⟨ring3, hr3⟩ : ∃ ring3, ring3 = ring_recovered example_ring_part example_ring_cfg
    (ring_slot_seq (ring_empty example_ring_part example_ring_cfg) example_ring_part pmem1) :=
    ⟨_, rfl⟩
  rw [← hr3] at hi3 d1 d2 d3 d4
  have hV0 : ∀ s, s < 99 → ring_slot_seq example_ring_last_seq_init.2.1 example_ring_part
      example_ring_last_seq_mem s = if s = 0 then some 4294967295 else none := by
    intro s hs
    rw [ring_slot_seq_congr _ (ring_empty example_ring_part example_ring_cfg) _ _ s c2 c3 c4]
    exact example_ring_last_view s hs
  have hV3 : ∀ s, s < 99 → ring_slot_seq ring3 example_ring_part pmem1 s
      = if s = 1 then some 0 else if s = 0 then some 4294967295 else none := by
    intro s hs
    rw [ring_slot_seq_congr ring3 example_ring_last_seq_init.2.1 _ _ s (by rw [d2, c2])
      (by rw [d3, c3]) (by rw [d4, c4]), hV s hs, hV0 s hs]
  obtain ⟨_, _, _, r4⟩ := ring_init_recovery example_K example_ring0 ring3
    example_ring_last_seq_run.2.2 pm3 example_ring_part pmem1 example_ring_cfg (by decide)
    (by decide) hok2 hfind2 hi3
  rw [d1, gc] at r4
  obtain ⟨b1, b2, _⟩ := r4 4294967295 0 (by decide) (by decide)
    (by rw [hV3 0 (by decide), if_neg (by decide), if_pos rfl])
    (fun s q hs hq => by
      rw [hV3 s hs] at hq
      by_cases c : s = 1
      · rw [if_pos c] at hq
        have := Option.some.inj hq
        omega
      · rw [if_neg c] at hq
        by_cases c0 : s = 0
        · rw [if_pos c0] at hq
          have := Option.some.inj hq
          omega
        · rw [if_neg c0] at hq
          exact Option.noConfusion hq)
    (fun s hs => absurd hs (Nat.not_lt_zero _))
  exact ⟨triple_eta_ok _ hok, a5, a6, ring3, pm3, hi3, b2, b1⟩

/-- Witness for C31: `fram_ring_init` on the erased example partition, the
three appends of the ring test, and `fram_ring_init` again. -/
theorem ring_recovery_reproduces_witness :
    PmOK example_pm example_ring_part (fun _ => 0xFF) ∧
    fram_ring_init example_K example_ring0 example_pm example_ring_cfg =
      (ESP_OK, (fram_ring_init example_K example_ring0 example_pm example_ring_cfg).2.1,
        (fram_ring_init example_K example_ring0 example_pm example_ring_cfg).2.2) ∧
    fram_ring_append_all
      (fram_ring_init example_K example_ring0 example_pm example_ring_cfg).2.1
      (fram_ring_init example_K example_ring0 example_pm example_ring_cfg).2.2
      example_ring_entries =
      (ESP_OK, (example_ring_run example_ring_entries).2.1,
        (example_ring_run example_ring_entries).2.2) ∧
    ∃ ring3 pm3, fram_ring_init example_K example_ring0
        (example_ring_run example_ring_entries).2.2 example_ring_cfg = (ESP_OK, ring3, pm3) ∧
      ring3.head_slot = (example_ring_run example_ring_entries).2.1.head_slot ∧
      ring3.tail_slot = (example_ring_run example_ring_entries).2.1.tail_slot ∧
      ring3.head_seq = (example_ring_run example_ring_entries).2.1.head_seq ∧
      ring3.count = (example_ring_run example_ring_entries).2.1.count :=
  have hrun := example_ring_run_ok example_ring_entries (by decide)
  have her := ring_init_erased example_K example_ring0 _ example_pm _
    example_ring_part (fun _ => 0xFF) example_ring_cfg example_ring_find example_pm_ring_ok
    (fun _ _ => rfl) (by decide) (by decide) example_ring_init_ok
  ⟨example_pm_ring_ok, example_ring_init_ok, hrun,
    ring_recovery_reproduces example_K example_ring0 _ _ example_ring0 example_pm _ _
      example_ring_part (fun _ => 0xFF) example_ring_cfg example_ring_entries (by decide)
      (by decide) example_pm_ring_ok example_ring_find example_ring_init_ok hrun
      (by rw [her.1]; decide)
      (fun _ s q hs hq => by
        rw [ring_slot_seq_fresh _ example_ring_part _ (fun _ => 0xFF) s her.2.1 her.2.2.1 hs
          (by decide : (255 : Nat) ≠ FRAM_RING_COMMIT)] at hq
        exact Option.noConfusion hq)⟩

/-- Counterexample to C31 as stated: the partition `"ring"` (99 slots of 41
bytes) holds in slot 0 a committed record with the sequence number `2^32 - 1`
and is erased elsewhere. `fram_ring_init` succeeds with `head_slot = 1` and
`head_seq = 0`; one `fram_ring_append` succeeds and leaves the in-memory ring
at `head_seq = 1`, `head_slot = 2`, so `head_seq` is not carried past
`2^32 - 1`. `fram_ring_init` on the resulting media succeeds with
`head_seq = 0` and `head_slot = 1`: the record in slot 0 still carries the
highest sequence number. -/
theorem ring_recovery_reproduces_counterexample :
    PmOK example_ring_last_seq_pm example_ring_part example_ring_last_seq_mem ∧
    example_ring_last_seq_init
      = (ESP_OK, example_ring_last_seq_init.2.1, example_ring_last_seq_init.2.2) ∧
    example_ring_last_seq_init.2.1.head_slot = 1 ∧
    example_ring_last_seq_init.2.1.head_seq = 0 ∧
    fram_ring_append_all example_ring_last_seq_init.2.1 example_ring_last_seq_init.2.2
      [([0x01], 0)]
      = (ESP_OK, example_ring_last_seq_run.2.1, example_ring_last_seq_run.2.2) ∧
    example_ring_last_seq_run.2.1.head_seq = 1 ∧
    example_ring_last_seq_run.2.1.head_slot = 2 ∧
    (fram_ring_init example_K example_ring0 example_ring_last_seq_run.2.2
      example_ring_cfg).1 = ESP_OK ∧
    (fram_ring_init example_K example_ring0 example_ring_last_seq_run.2.2
      example_ring_cfg).2.1.head_seq = 0 ∧
    (fram_ring_init example_K example_ring0 example_ring_last_seq_run.2.2
      example_ring_cfg).2.1.head_slot = 1 := by
  obtain ⟨hinit, _, _, _, _, _, _, i1, i2⟩ := example_ring_last_init
  obtain ⟨hrun, a5, a6, ring3, pm3, hi3, b2, b1⟩ := example_ring_last_run
  rw [hi3]
  exact ⟨example_ring_last_pm_ok, hinit, i1, i2, hrun, a5, a6, rfl, b2, b1⟩

/-! ## Ring log: a payload area wider than the length field -/

theorem example_wide_pm_ok : PmOK example_wide_pm example_wide_part (fun _ => 0xFF) :=
  ⟨rfl, by decide, (fun _ => 0xFF), 131072, ⟨rfl, rfl, rfl, rfl, by decide, rfl⟩, by decide,
    fun _ _ => rfl⟩

theorem example_wide_find :
    fram_pm_find example_wide_pm example_wide_cfg.partition_name = some example_wide_part := by
  decide

theorem example_wide_init_ok :
    example_wide_init = (ESP_OK, example_wide_init.2.1, example_wide_init.2.2) := by
  apply triple_eta_ok
  obtain ⟨pm1, hi, _⟩ := ring_init_view example_wide_K example_ring0 example_wide_pm
    example_wide_part (fun _ => 0xFF) example_wide_cfg (fun _ => none) example_wide_find
    example_wide_pm_ok (by decide) (by decide) (by decide) (by decide) (by decide)
    (fun slot _ => ⟨fun q hq => Option.noConfusion hq,
      fun _ => (by decide : (255 : Nat) ≠ FRAM_RING_COMMIT)⟩)
  unfold example_wide_init
  rw [hi]

/-- The ring that `fram_ring_init` leaves in that build: one slot with a payload
area of 65536 bytes, and an append of 65536 bytes is refused. -/
theorem example_wide_facts (payload : List Nat) (now : Nat) (hl : payload.length = 65536) :
    example_wide_init.2.1.ready = true ∧
    example_wide_init.2.1.max_payload = 65536 ∧
    example_wide_init.2.1.capacity = 1 ∧
    example_wide_init.2.1.head_slot = 0 ∧
    PmOK example_wide_init.2.2 example_wide_part (fun _ => 0xFF) ∧
    fram_ring_append example_wide_init.2.1 example_wide_init.2.2 payload now
      = (ESP_ERR_INVALID_SIZE, example_wide_init.2.1, example_wide_init.2.2) := by
  obtain ⟨hr1, g1, h1, _⟩ := ring_init_erased example_wide_K example_ring0 _ example_wide_pm _
    example_wide_part (fun _ => 0xFF) example_wide_cfg example_wide_find example_wide_pm_ok
    (fun _ _ => rfl) (by decide) (by decide) example_wide_init_ok
  have hmp : example_wide_init.2.1.max_payload = 65536 := by rw [hr1]; rfl
  have hcap : example_wide_init.2.1.capacity = 1 := by rw [hr1]; decide
  have hhead : example_wide_init.2.1.head_slot = 0 := by rw [hr1]; rfl
  have h2 : payload.length > example_wide_init.2.1.max_payload ∨
      payload.length > UINT16_MAX := Or.inr (by rw [hl]; decide)
  refine ⟨g1.ready, hmp, hcap, hhead, h1, ?_⟩
  unfold fram_ring_append
  simp only [g1.ready, Bool.not_true, Bool.false_eq_true, if_false]
  rw [if_pos h2]

/-- Counterexample for C27: in a build with
`CONFIG_FRAM_RING_MAX_PAYLOAD = 65536`, `fram_ring_init` with
`max_payload = 65536` on an erased partition of 128 KiB of a working device
returns `ESP_OK` and leaves a ready ring with `max_payload = 65536`,
`capacity = 1` and `head_slot = 0`. A payload of 65536 bytes has
`len ≤ max_payload`, yet `fram_ring_append` returns `ESP_ERR_INVALID_SIZE`
(the check `len > UINT16_MAX`), not `ESP_OK`, and leaves the ring and the
partition manager as they were. -/
theorem ring_append_length_limit_counterexample :
    PmOK example_wide_pm example_wide_part (fun _ => 0xFF) ∧
    example_wide_init.1 = ESP_OK ∧
    example_wide_init.2.1.ready = true ∧
    example_wide_init.2.1.max_payload = 65536 ∧
    example_wide_init.2.1.capacity = 1 ∧
    example_wide_init.2.1.head_slot = 0 ∧
    PmOK example_wide_init.2.2 example_wide_part (fun _ => 0xFF) ∧
    (List.replicate 65536 0).length ≤ example_wide_init.2.1.max_payload ∧
    fram_ring_append example_wide_init.2.1 example_wide_init.2.2 (List.replicate 65536 0) 5
      = (ESP_ERR_INVALID_SIZE, example_wide_init.2.1, example_wide_init.2.2) ∧
    (fram_ring_append example_wide_init.2.1 example_wide_init.2.2
      (List.replicate 65536 0) 5).1 ≠ ESP_OK := by
  have hlen : (List.replicate 65536 0).length = 65536 := List.length_replicate _ _
  obtain ⟨hr, hmp, hcap, hhead, h1, happ⟩ := example_wide_facts (List.replicate 65536 0) 5 hlen
  refine ⟨example_wide_pm_ok, by rw [example_wide_init_ok], hr, hmp, hcap, hhead, h1,
    by rw [hlen, hmp], happ, ?_⟩
  rw [happ]
  exact fun e => esp_err_t.noConfusion e

/-! ## Key/value store: set-then-get on recovered media -/

/-- The scans accept no record at an offset exactly when the partition holds no
live record there. -/
theorem kvs_accept_none_iff (K : Kconfig) (kvs : fram_kvs_t) (p : fram_partition_t)
    (pmem : Nat → Nat) (off : Nat) :
    kvs_accept K kvs p pmem off = none ↔ spec_kvs_live K kvs.magic p pmem off = false := by
  rw [kvs_accept_live]
  cases c : spec_kvs_live K kvs.magic p pmem off with
  | false => simp
  | true => simp

/-- C15 (amended). KVS set-then-get on recovered media. For every content (of
bytes) of a partition of at most `2^32 - 65572` bytes of a working device,
every key `k` and every value `v` (of bytes): when `fram_kvs_init` returns
`ESP_OK`, `fram_kvs_set(k, v)` on the store it found returns `ESP_OK`, and the
partition content holds no live record (magic, `1 ≤ key_len ≤ 15`,
`value_len` within the maximum, record inside the partition, commit byte
`0xA5`, matching CRC) at the offset where the record of the set ends, that is
at `write_offset + 20 + |k| + |v| + 1` for the `write_offset` that
`fram_kvs_init` found (the set leaves the bytes from that offset on as they
were), then the immediately following `fram_kvs_get(k)` with a buffer of at
least `|v|` bytes returns `ESP_OK` with exactly `v` and `*len = |v|`, and
re-running `fram_kvs_init` returns `ESP_OK` with the in-memory store object
(the same `write_offset` and `next_seq`). Nothing is asked of the bytes between
the `write_offset` found and the end of the new record, nor of the bytes
behind a record that is not live. -/
theorem kvs_set_then_get_recovered (K : Kconfig) (pm pm1 pm2 : fram_pm_t)
    (p : fram_partition_t) (pmem : Nat → Nat) (cfg : fram_kvs_config_t)
    (kvs1 kvs2 : fram_kvs_t) (k v buf : List Nat) (cap : Nat)
    (hmagic : cfg.magic < U32) (h : PmOK pm p pmem)
    (hfind : fram_pm_find pm cfg.partition_name = some p)
    (hsize : p.size + 65572 ≤ U32)
    (hbytes : ∀ i, i < p.size → pmem i < 256)
    (hkb : ∀ b ∈ k, b < 256) (hvb : ∀ b ∈ v, b < 256)
    (hinit : fram_kvs_init K pm cfg = (ESP_OK, kvs1, pm1))
    (hset : fram_kvs_set K kvs1 pm1 k v = (ESP_OK, kvs2, pm2))
    (hbehind : spec_kvs_live K cfg.magic p pmem
      (kvs1.write_offset + (20 + k.length + v.length + 1)) = false)
    (hcap : v.length ≤ cap) :
    (∃ pm3, fram_kvs_get K kvs2 pm2 k buf cap
      = (ESP_OK, v ++ buf.drop v.length, v.length, pm3)) ∧
    (∃ pm4, fram_kvs_init K pm2 cfg = (ESP_OK, kvs2, pm4)) := by
  have hvl := kvs_bytes_value_len p pmem hbytes
  obtain ⟨pmI, hI, _⟩ := kvs_init_walk K pm p pmem cfg
    { part := some p, magic := cfg.magic, write_offset := 0, next_seq := 0, ready := false
      mutex := SemaphoreHandle_t.free } h hfind hsize rfl hvl
  have hm1 : kvs1.magic = cfg.magic := by
    rw [hI] at hinit
    rw [← (Prod.mk.inj (Prod.mk.inj hinit).2).1]
  have hacc : kvs_accept K kvs1 p pmem
      (kvs1.write_offset + (20 + k.length + v.length + 1)) = none := by
    rw [kvs_accept_none_iff, hm1]
    exact hbehind
  exact kvs_set_get_behind K pm pm1 pm2 p pmem cfg kvs1 kvs2 k v buf cap hmagic h hfind hsize
    hbytes hkb hvb hinit hacc hset hcap

/-! ### The interrupted set of the example -/

/-- The media that the interrupted call leaves: the two records of the log,
a zeroed byte at offset 74, erased bytes elsewhere; `fram_kvs_init` on it finds
the store of before the call. -/
theorem example_torn_facts :
    example_torn_set.1 = ESP_FAIL ∧
    fram_pm_find example_torn_pm example_kvs_cfg.partition_name = some example_kvs_part ∧
    ∃ pmem2 pmI,
      PmOK example_torn_pm example_kvs_part (mem_write pmem2 74 [0]) ∧
      (∀ i, i < example_kvs_part.size → mem_write pmem2 74 [0] i < 256) ∧
      (∀ j, 75 ≤ j → j < example_kvs_part.size → mem_write pmem2 74 [0] j = 0xFF) ∧
      KvsAfter example_K (example_kvs_run example_pm example_kvs_ops).2.1 example_kvs_part
        pmem2 example_kvs_ops ∧
      (example_kvs_run example_pm example_kvs_ops).2.1.magic = example_kvs_cfg.magic ∧
      (example_kvs_run example_pm example_kvs_ops).2.1.write_offset = 50 ∧
      example_kvs_recover example_torn_pm
        = (ESP_OK, (example_kvs_run example_pm example_kvs_ops).2.1, pmI) ∧
      PmOK pmI example_kvs_part (mem_write pmem2 74 [0]) := by
  obtain ⟨hinit, hrun, pmem2, h2, he2, hm2, hA, _, hfindR, hrest⟩ :=
    example_kvs_fail_facts example_pm example_kvs_part 32768 example_kvs_ops 2
      (kvs_op.set [0x62] [0x6F, 0x6C, 0x64]) example_pm_kvs_ok example_kvs_find
      example_kvs_ops_valid (by decide) (by decide) (by decide)
  have ha2 := he2.after
  have hsz : kvs_log_size example_kvs_ops = 50 := by decide
  have hwo : (example_kvs_run example_pm example_kvs_ops).2.1.write_offset = 50 := by
    rw [ha2.offset, hsz]
  have hco : fram_kvs_commit_offset
      (example_kvs_run example_pm example_kvs_ops).2.1.write_offset
      (kvs_op.set [0x62] [0x6F, 0x6C, 0x64]).key.length
      (kvs_op.set [0x62] [0x6F, 0x6C, 0x64]).value.length = 74 := by
    rw [hwo]; decide
  obtain ⟨pmF, hfl, hAF⟩ := kvs_commit_fail_after_clear
    (example_kvs_run example_pm example_kvs_ops).2.1 example_kvs_part pmem2
    (example_kvs_armed example_pm 32768 example_kvs_ops 2)
    (kvs_op.set [0x62] [0x6F, 0x6C, 0x64]) 0
    ha2.part hA (by decide) (by rw [hwo]; decide) (by rw [hco]; decide) (by rw [hwo]; decide)
  rw [hco] at hAF
  have hfl2 : example_torn_set
      = (ESP_FAIL, (example_kvs_run example_pm example_kvs_ops).2.1, pmF) := by
    unfold example_torn_set example_kvs_failed
    rw [kvs_apply_eq example_K _ _ example_kvs_part (kvs_op.set [0x62] [0x6F, 0x6C, 0x64])
      ha2.part ha2.mutex ⟨by decide, by decide, by decide, by decide⟩]
    exact hfl
  have hpm : (example_kvs_failed example_pm 32768 example_kvs_ops 2
      (kvs_op.set [0x62] [0x6F, 0x6C, 0x64])).2.2 = pmF := by
    have e : example_torn_set.2.2 = pmF := by rw [hfl2]
    exact e
  obtain ⟨hR, _⟩ := hrest (mem_write pmem2 74 [0]) (by rw [hpm]; exact hAF.armed_any)
  have herased : ∀ j, 50 ≤ j → j < example_kvs_part.size → pmem2 j = 0xFF := by
    intro j h1 h3
    exact ha2.erased j (by rw [hsz]; exact h1) h3
  have hMout : ∀ a, a ≠ 74 → mem_write pmem2 74 [0] a = pmem2 a := by
    intro a ha
    apply mem_write_outside
    have : ([0] : List Nat).length = 1 := rfl
    omega
  have hM74 : mem_write pmem2 74 [0] 74 = 0 := mem_write_inside pmem2 74 [0] 0 Nat.zero_lt_one
  have hbytes : ∀ i, i < example_kvs_part.size → mem_write pmem2 74 [0] i < 256 := by
    intro i hi
    by_cases c74 : i = 74
    · rw [c74, hM74]
      exact Nat.zero_lt_succ _
    · rw [hMout i c74]
      by_cases c : i < 50
      · exact klogseq_bytes pmem2 _ example_kvs_ops 0 0 he2.log (by decide) i (Nat.zero_le _)
          (by rw [hsz]; omega)
      · rw [herased i (by omega) hi]
        exact (by decide : (255 : Nat) < 256)
  have herased3 : ∀ j, 75 ≤ j → j < example_kvs_part.size →
      mem_write pmem2 74 [0] j = 0xFF := by
    intro j h1 h3
    rw [hMout j (by omega)]
    exact herased j (by omega) h3
  have hlogM : KLogSeq (mem_write pmem2 74 [0])
      (example_kvs_run example_pm example_kvs_ops).2.1.magic 0 0 example_kvs_ops :=
    klogseq_congr pmem2 _ _ example_kvs_ops 0 0
      (fun a _ ha => hMout a (by rw [hsz] at ha; omega)) he2.log
  obtain ⟨hacc, hvl⟩ := kvs_accept_torn example_K
    (example_kvs_run example_pm example_kvs_ops).2.1 example_kvs_part
    (mem_write pmem2 74 [0]) 50 0
    (kvs_header_for example_kvs_cfg.magic 2 (kvs_op.set [0x62] [0x6F, 0x6C, 0x64]))
    (by decide) (by decide) (fun i hi => absurd hi (Nat.not_lt_zero _))
    (fun i _ hi => by
      rw [hMout _ (by omega)]
      exact herased _ (by omega) (by
        have : example_kvs_part.size = 4096 := rfl
        omega))
    hM74
    (fun a h1 h3 hne => by
      have hne2 : a ≠ 74 := hne
      rw [hMout a hne2]
      exact herased a (by omega) h3)
  obtain ⟨pmI, hI, hokI⟩ := kvs_init_of_log example_K example_torn_pm example_kvs_part
    (mem_write pmem2 74 [0]) example_kvs_cfg example_kvs_ops
    (example_kvs_run example_pm example_kvs_ops).2.1 (by decide) hR hfindR
    (by rw [hsz]; decide) (by rw [← hm2]; exact hlogM) ha2.valid ha2.fits hm2
    (by rw [hsz]; exact hacc) (fun _ => by rw [hsz]; exact hvl)
  rw [kvs_exact_eq example_K _ example_kvs_part pmem2 example_kvs_ops _ he2 hm2] at hI
  exact ⟨by rw [hfl2], hfindR, pmem2, pmI, hR, hbytes, herased3, ha2, hm2, hwo, hI, hokI⟩

/-- Witness for C15: media left by an interrupted set. After
`set("a", "one", 3)` and `set("b", "two", 3)` on the erased `"kvs"` partition
of the tests, the call `set("b", "old", 3)` fails (`ESP_FAIL`) after it has
zeroed the commit byte of its record, so byte 74 of the partition holds `0x00`
behind the scan end. After a restart `fram_kvs_init` finds the store with
`write_offset = 50`, the call `set("b", "new", 3)` returns `ESP_OK`, no live
record lies at offset 75, and the following `fram_kvs_get("b")` returns
`"new"` and `fram_kvs_init` again gives the store object in memory. -/
theorem kvs_set_then_get_recovered_witness :
    example_torn_set.1 = ESP_FAIL ∧
    example_torn_pm.dev.hal.ctx.buffer (example_kvs_part.offset + 74) = 0 ∧
    (example_kvs_recover example_torn_pm).1 = ESP_OK ∧
    (example_kvs_recover example_torn_pm).2.1.write_offset = 50 ∧
    (example_kvs_set_new example_torn_pm).1 = ESP_OK ∧
    (∃ pm3, fram_kvs_get example_K (example_kvs_set_new example_torn_pm).2.1
        (example_kvs_set_new example_torn_pm).2.2 [0x62] [0, 0, 0, 0, 0, 0, 0, 0] 8
      = (ESP_OK, [0x6E, 0x65, 0x77, 0, 0, 0, 0, 0], 3, pm3)) ∧
    (∃ pm4, fram_kvs_init example_K (example_kvs_set_new example_torn_pm).2.2 example_kvs_cfg
      = (ESP_OK, (example_kvs_set_new example_torn_pm).2.1, pm4)) := by
  obtain ⟨hfail, hfindR, pmem2, pmI, hR, hbytes, herased3, ha2, hm2, hwo, hI, hokI⟩ :=
    example_torn_facts
  have hbuf : example_torn_pm.dev.hal.ctx.buffer (example_kvs_part.offset + 74) = 0 := by
    obtain ⟨_, _, mem, size, hd, _, hview⟩ := hR
    rw [hd.mem_eq, hview 74 (by decide)]
    exact mem_write_inside pmem2 74 [0] 0 Nat.zero_lt_one
  have hI1 : fram_kvs_init example_K example_torn_pm example_kvs_cfg
      = (ESP_OK, (example_kvs_run example_pm example_kvs_ops).2.1, pmI) := hI
  obtain ⟨pm2, pmem3, hS0, _⟩ := kvs_apply_media_ok example_K
    (example_kvs_run example_pm example_kvs_ops).2.1 example_kvs_part (mem_write pmem2 74 [0])
    pmI (kvs_op.set [0x62] [0x6E, 0x65, 0x77]) ha2.part ha2.mutex hokI
    ⟨by decide, by decide, by decide, by decide⟩ (by rw [hwo]; decide)
  obtain ⟨kvsN, hS⟩ : ∃ kvsN, fram_kvs_apply example_K
      (example_kvs_run example_pm example_kvs_ops).2.1 pmI
      (kvs_op.set [0x62] [0x6E, 0x65, 0x77]) = (ESP_OK, kvsN, pm2) := ⟨_, hS0⟩
  have hS2 : example_kvs_set_new example_torn_pm = (ESP_OK, kvsN, pm2) := by
    unfold example_kvs_set_new
    rw [hI]
    exact hS
  have hlive : spec_kvs_live example_K example_kvs_cfg.magic example_kvs_part
      (mem_write pmem2 74 [0])
      ((example_kvs_run example_pm example_kvs_ops).2.1.write_offset
        + (20 + [0x62].length + [0x6E, 0x65, 0x77].length + 1)) = false := by
    rw [← hm2, ← kvs_accept_none_iff, hwo]
    exact kvs_accept_erased example_K _ example_kvs_part _ _ herased3
  have hw := kvs_set_then_get_recovered example_K example_torn_pm pmI pm2 example_kvs_part
    (mem_write pmem2 74 [0]) example_kvs_cfg (example_kvs_run example_pm example_kvs_ops).2.1
    kvsN [0x62] [0x6E, 0x65, 0x77] [0, 0, 0, 0, 0, 0, 0, 0] 8 (by decide) hR hfindR
    (by decide) hbytes (by decide) (by decide) hI1 hS hlive (by decide)
  rw [hS2, hI]
  exact ⟨hfail, hbuf, rfl, hwo, rfl, hw.1, hw.2⟩

/-! ## Key/value store: `fram_kvs_find_end` over a log near `2^32` -/

/-- The loop of `fram_kvs_find_end` at an offset with room for a header that is
not valid, on a working partition of any size: it stops there with `ESP_OK`. -/
theorem kvs_find_end_stop_invalid (K : Kconfig) (kvs : fram_kvs_t) (p : fram_partition_t)
    (pmem : Nat → Nat) (pm : fram_pm_t) (fuel off next_seq : Nat) (key_buf : List Nat)
    (hp : kvs.part = some p) (h : PmOK pm p pmem) (hfit : off + 20 + 1 ≤ p.size)
    (hinv : fram_kvs_header_valid K kvs (fram_kvs_header_of_bytes (mem_read pmem off 20))
      = false) :
    ∃ pm1, PmOK pm1 p pmem ∧
      fram_kvs_find_end_loop K kvs p (fuel + 1) pm off next_seq key_buf
        = (ESP_OK, off, next_seq, pm1) := by
  have hsz := pm_size_lt pm p pmem h
  rw [U32_eq] at hsz
  have c0 : (off + KVS_HEADER_SIZE + 1) % U32 = off + 20 + 1 :=
    Nat.mod_eq_of_lt (by rw [U32_eq]; show off + 20 + 1 < 4294967296; omega)
  obtain ⟨pm1, h1, hok1⟩ := fram_pm_read_ok pm p pmem off 20 h (by decide) (by omega)
  obtain ⟨hdr, hhdr⟩ : ∃ hdr, hdr = fram_kvs_header_of_bytes (mem_read pmem off 20) := ⟨_, rfl⟩
  have c2 : fram_kvs_read_header kvs pm off = (ESP_OK, hdr, pm1) := by
    unfold fram_kvs_read_header
    rw [hp]
    show ((fram_pm_read pm (some p) off 20).1,
      fram_kvs_header_of_bytes (fram_pm_read pm (some p) off 20).2.1,
      (fram_pm_read pm (some p) off 20).2.2) = _
    rw [h1, hhdr]
  rw [← hhdr] at hinv
  refine ⟨pm1, hok1, ?_⟩
  rw [fram_kvs_find_end_loop, if_pos (by rw [c0]; exact hfit)]
  simp only [c2, ne_eq, not_true_eq_false, if_false, hinv, Bool.not_false, if_true]

/-- The loop of `fram_kvs_find_end` over a numbered log of committed records on
a working partition of any size: after one iteration per record it stands
behind the log with the number after the last record. -/
theorem kvs_find_end_over_log (K : Kconfig) (kvs : fram_kvs_t) (p : fram_partition_t)
    (pmem : Nat → Nat) (hp : kvs.part = some p) (hm : kvs.magic < U32) :
    ∀ (rest : List kvs_op) (off seq fuel : Nat) (pm : fram_pm_t) (key_buf : List Nat),
      PmOK pm p pmem → KLogSeq pmem kvs.magic off seq rest → (∀ op, op ∈ rest → op.valid K) →
      off + kvs_log_size rest ≤ p.size → seq + rest.length < U32 →
      ∃ pm1 kb1, PmOK pm1 p pmem ∧
        fram_kvs_find_end_loop K kvs p (rest.length + fuel) pm off seq key_buf
          = fram_kvs_find_end_loop K kvs p fuel pm1 (off + kvs_log_size rest)
              (seq + rest.length) kb1 := by
  intro rest
  induction rest with
  | nil =>
    intro off seq fuel pm key_buf h _ _ _ _
    refine ⟨pm, key_buf, h, ?_⟩
    rw [kvs_log_size_nil, List.length_nil, Nat.add_zero, Nat.add_zero, Nat.zero_add]
  | cons op rest ih =>
    intro off seq fuel pm key_buf h hlog hvalid hfit hseq
    rw [kvs_log_size_cons] at hfit
    rw [List.length_cons] at hseq
    obtain ⟨hrec, hrest⟩ := hlog
    have hv := hvalid op (List.mem_cons_self _ _)
    have hsize := kvs_op_size_eq op
    obtain ⟨l1, l2, l3, _⟩ := kvs_header_for_lens kvs.magic seq op
    obtain ⟨pm1, kb1, e, hok1, h1⟩ := kvs_find_end_iter_any K kvs p pmem pm
      (rest.length + fuel) off seq key_buf hp h
    rw [kvs_accept_rec K kvs p pmem off seq op hm (by omega) hv (by omega) hrec] at h1
    simp only [l1, l2, l3] at h1
    have hupd : kvs_seq_upd seq seq = seq + 1 := by
      unfold kvs_seq_upd
      rw [if_pos (Nat.le_refl _)]
      exact Nat.mod_eq_of_lt (by omega)
    rw [hupd, ← hsize] at h1
    obtain ⟨pm2, kb2, hok2, h2⟩ := ih (off + op.size) (seq + 1) fuel pm1 kb1 hok1 hrest
      (fun o ho => hvalid o (List.mem_cons_of_mem _ ho)) (by omega) (by omega)
    refine ⟨pm2, kb2, hok2, ?_⟩
    have e1 : (op :: rest).length + fuel = (rest.length + fuel) + 1 := by
      rw [List.length_cons]
      omega
    have e2 : off + kvs_log_size (op :: rest) = off + op.size + kvs_log_size rest := by
      rw [kvs_log_size_cons, Nat.add_assoc]
    have e3 : seq + (op :: rest).length = seq + 1 + rest.length := by
      rw [List.length_cons]
      omega
    rw [e1, h1, h2, e2, e3]

/-- The function `fram_kvs_init` when the loop of `fram_kvs_find_end` returns
`ESP_OK`: the store it builds. -/
theorem kvs_init_of_loop (K : Kconfig) (pm pm1 : fram_pm_t) (p : fram_partition_t)
    (cfg : fram_kvs_config_t) (w n : Nat)
    (hfind : fram_pm_find pm cfg.partition_name = some p)
    (h1 : fram_kvs_find_end_loop K
      { part := some p, magic := cfg.magic, write_offset := 0, next_seq := 0, ready := false
        mutex := SemaphoreHandle_t.free } p (p.size + 1) pm 0 0 [] = (ESP_OK, w, n, pm1)) :
    fram_kvs_init K pm cfg =
      (ESP_OK, { part := some p, magic := cfg.magic, write_offset := w, next_seq := n
                 ready := true, mutex := SemaphoreHandle_t.free }, pm1) := by
  unfold fram_kvs_init fram_kvs_find_end
  simp only [hfind, h1, ne_eq, not_true_eq_false, if_false]

theorem example_big_length2 : example_big_ops2.length = 171798690 :=
  List.length_replicate _ _

/-- The run of `fram_kvs_init` and the calls `ops` of the example on an erased
partition: the log it leaves and the partition table it keeps. -/
theorem example_kvs_run_log (pm : fram_pm_t) (p : fram_partition_t) (ops : List kvs_op)
    (h : PmOK pm p (fun _ => 0xFF))
    (hfind : fram_pm_find pm example_kvs_cfg.partition_name = some p)
    (hvalid : ∀ op, op ∈ ops → op.valid example_K) (hfit : kvs_log_size ops ≤ p.size) :
    (example_kvs_run pm ops).1 = ESP_OK ∧
    ∃ pmem2, PmOK (example_kvs_run pm ops).2.2 p pmem2 ∧
      fram_pm_find (example_kvs_run pm ops).2.2 example_kvs_cfg.partition_name = some p ∧
      KLogSeq pmem2 example_kvs_cfg.magic 0 0 ops ∧
      ∀ j, kvs_log_size ops ≤ j → j < p.size → pmem2 j = 0xFF := by
  obtain ⟨hinit, hrun, _⟩ := example_kvs_run_ok pm p ops h hfind hvalid hfit
  have hrun2 : fram_kvs_apply_all example_K (fram_kvs_init example_K pm example_kvs_cfg).2.1
      (fram_kvs_init example_K pm example_kvs_cfg).2.2 ops
      = (ESP_OK, (example_kvs_run pm ops).2.1, (example_kvs_run pm ops).2.2) := hrun
  obtain ⟨pmem2, h2, he2, hm2⟩ := kvs_run_exact example_K pm _ _ p (fun _ => 0xFF)
    example_kvs_cfg _ _ ops (by decide) h hfind (fun _ _ => rfl) hinit hrun2
  have hs1 := fram_kvs_init_same example_K pm example_kvs_cfg
  have hs2 : PmSame (fram_kvs_init example_K pm example_kvs_cfg).2.2
      (example_kvs_run pm ops).2.2 := fram_kvs_apply_all_same example_K ops _ _
  refine ⟨by rw [hrun], pmem2, h2, ?_, ?_, he2.after.erased⟩
  · rw [fram_pm_find_same _ _ _ (PmSame.trans_same _ _ _ hs1 hs2)]
    exact hfind
  · rw [← hm2]
    exact he2.log

/-- `fram_kvs_init` on media that hold the log of 171798690 sets in the
partition of `2^32 - 2` bytes, with erased bytes behind the log. -/
theorem example_big_recover (pmX : fram_pm_t) (pmem2 : Nat → Nat)
    (h2 : PmOK pmX example_big_part pmem2)
    (hfindX : fram_pm_find pmX example_kvs_cfg.partition_name = some example_big_part)
    (hlog2 : KLogSeq pmem2 example_kvs_cfg.magic 0 0 example_big_ops2)
    (herased : ∀ j, 4294967250 ≤ j → j < example_big_part.size → pmem2 j = 0xFF) :
    ∃ pmI, example_kvs_recover pmX
        = (ESP_OK, { part := some example_big_part, magic := example_kvs_cfg.magic
                     write_offset := 4294967250, next_seq := 171798690, ready := true
                     mutex := SemaphoreHandle_t.free }, pmI) ∧
      PmOK pmI example_big_part pmem2 := by
  obtain ⟨pm1, kb1, hok1, hpre⟩ := kvs_find_end_over_log example_K
    { part := some example_big_part, magic := example_kvs_cfg.magic, write_offset := 0
      next_seq := 0, ready := false, mutex := SemaphoreHandle_t.free }
    example_big_part pmem2 rfl (by decide) example_big_ops2 0 0 4123168605 pmX [] h2 hlog2
    example_big_valid2 (by rw [example_big_size2]; decide) (by rw [example_big_length2]; decide)
  rw [example_big_length2, example_big_size2] at hpre
  obtain ⟨pmI, hokI, hstop⟩ := kvs_find_end_stop_invalid example_K
    { part := some example_big_part, magic := example_kvs_cfg.magic, write_offset := 0
      next_seq := 0, ready := false, mutex := SemaphoreHandle_t.free }
    example_big_part pmem2 pm1 4123168604 (0 + 4294967250) (0 + 171798690) kb1 rfl hok1
    (by decide)
    (kvs_erased_header_invalid example_K _ pmem2 _ (fun i hi => herased _ (by omega) (by
      have : example_big_part.size = 4294967294 := rfl
      omega)))
  have hI := kvs_init_of_loop example_K pmX pmI example_big_part example_kvs_cfg
    (0 + 4294967250) (0 + 171798690) hfindX (by
      have hf : example_big_part.size + 1 = 171798690 + 4123168605 := by decide
      rw [hf, hpre]
      exact hstop)
  exact ⟨pmI, hI, hokI⟩

/-- A `fram_kvs_get("b")` on media that hold the log of 171798690 sets and one
more record of 25 bytes in the partition of `2^32 - 2` bytes: the scan passes
the log, its loop condition wraps at `2^32 - 21`, the header read there is
refused and the call returns `ESP_ERR_NOT_FOUND`. -/
theorem example_big_get (pm2 : fram_pm_t) (pmem3 : Nat → Nat)
    (hok2 : PmOK pm2 example_big_part pmem3)
    (hlog3 : KLogSeq pmem3 example_kvs_cfg.magic 0 0
      (example_big_ops2 ++ [kvs_op.set [0x62] [0x6E, 0x65, 0x77]])) :
    (fram_kvs_get example_K
      { part := some example_big_part, magic := example_kvs_cfg.magic
        write_offset := 4294967275, next_seq := 171798691, ready := true
        mutex := SemaphoreHandle_t.free } pm2 [0x62] [0, 0, 0, 0, 0, 0, 0, 0] 8).1
      = ESP_ERR_NOT_FOUND := by
  have hvalid3 : ∀ op, op ∈ example_big_ops2 ++ [kvs_op.set [0x62] [0x6E, 0x65, 0x77]] →
      op.valid example_K := by
    intro op ho
    rcases List.mem_append.mp ho with h | h
    · exact example_big_valid2 op h
    · rw [List.mem_singleton.mp h]
      exact ⟨by decide, by decide, by decide, by decide⟩
  have hsize3 : kvs_log_size (example_big_ops2 ++ [kvs_op.set [0x62] [0x6E, 0x65, 0x77]])
      = 4294967275 := by
    rw [kvs_log_size_append, example_big_size2]
    rfl
  have hlen3 : (example_big_ops2 ++ [kvs_op.set [0x62] [0x6E, 0x65, 0x77]]).length
      = 171798691 := by
    rw [List.length_append, example_big_length2]
    rfl
  obtain ⟨st1, pm3, kb3, hok3, _, hscan⟩ := kvs_scan_prefix example_K
    { part := some example_big_part, magic := example_kvs_cfg.magic
      write_offset := 4294967275, next_seq := 171798691, ready := true
      mutex := SemaphoreHandle_t.free }
    example_big_part pmem3 [0x62] rfl (by decide)
    (example_big_ops2 ++ [kvs_op.set [0x62] [0x6E, 0x65, 0x77]]) 0 4123168604 pm2
    { found := false, deleted := false, last_hdr := kvs_header_zero, last_offset := 0 } [] none
    hok2 (klogseq_log pmem3 _ _ 0 0 (by rw [hlen3]; decide) hlog3) hvalid3
    (by rw [hsize3]; decide) (Or.inl rfl)
  rw [hlen3, hsize3] at hscan
  have hbad := kvs_scan_loop_read_bad example_K
    { part := some example_big_part, magic := example_kvs_cfg.magic
      write_offset := 4294967275, next_seq := 171798691, ready := true
      mutex := SemaphoreHandle_t.free }
    example_big_part pmem3 pm3 [0x62] 4123168603 (0 + 4294967275) st1 kb3 rfl hok3
    (by decide) (by decide)
  have hloop : fram_kvs_scan_loop example_K
      { part := some example_big_part, magic := example_kvs_cfg.magic
        write_offset := 4294967275, next_seq := 171798691, ready := true
        mutex := SemaphoreHandle_t.free }
      example_big_part [0x62] (example_big_part.size + 1) pm2 0
      { found := false, deleted := false, last_hdr := kvs_header_zero, last_offset := 0 } []
        = (ESP_ERR_INVALID_SIZE, st1, pm3) := by
    have hf : example_big_part.size + 1 = 171798691 + 4123168604 := by decide
    rw [hf, hscan]
    exact hbad
  exact (kvs_get_scan_err example_K _ example_big_part pm2 pm3 [0x62]
    [0, 0, 0, 0, 0, 0, 0, 0] 8 st1 ESP_ERR_INVALID_SIZE rfl rfl (by decide) (by decide) hloop
    (by decide)).2

/-- The call `set("b", "new", 3)` on the store at `2^32 - 46` of the partition
of `2^32 - 2` bytes. -/
theorem example_big_set_new (pmI : fram_pm_t) (pmem2 : Nat → Nat)
    (hokI : PmOK pmI example_big_part pmem2)
    (hlog2 : KLogSeq pmem2 example_kvs_cfg.magic 0 0 example_big_ops2) :
    ∃ pm2 pmem3, fram_kvs_set example_K
        { part := some example_big_part, magic := example_kvs_cfg.magic
          write_offset := 4294967250, next_seq := 171798690, ready := true
          mutex := SemaphoreHandle_t.free } pmI [0x62] [0x6E, 0x65, 0x77]
        = (ESP_OK, { part := some example_big_part, magic := example_kvs_cfg.magic
                     write_offset := 4294967275, next_seq := 171798691, ready := true
                     mutex := SemaphoreHandle_t.free }, pm2) ∧
      PmOK pm2 example_big_part pmem3 ∧
      KLogSeq pmem3 example_kvs_cfg.magic 0 0
        (example_big_ops2 ++ [kvs_op.set [0x62] [0x6E, 0x65, 0x77]]) := by
  obtain ⟨pm2, pmem3, hS0, hok2, hrecN, hframe⟩ := kvs_apply_media_ok example_K
    { part := some example_big_part, magic := example_kvs_cfg.magic
      write_offset := 4294967250, next_seq := 171798690, ready := true
      mutex := SemaphoreHandle_t.free }
    example_big_part pmem2 pmI (kvs_op.set [0x62] [0x6E, 0x65, 0x77]) rfl rfl hokI
    ⟨by decide, by decide, by decide, by decide⟩ (by decide)
  refine ⟨pm2, pmem3, hS0, hok2, ?_⟩
  apply klogseq_snoc
  · exact klogseq_congr pmem2 pmem3 _ example_big_ops2 0 0
      (fun a _ ha => hframe a (Or.inl (by
        rw [example_big_size2] at ha
        show a < 4294967250
        omega))) hlog2
  · rw [example_big_size2, example_big_length2]
    exact hrecN

/-- No live record starts within 21 bytes of the end of a partition. -/
theorem spec_kvs_live_end (K : Kconfig) (magic : Nat) (p : fram_partition_t) (pmem : Nat → Nat)
    (off : Nat) (h : p.size < off + 22) : spec_kvs_live K magic p pmem off = false := by
  unfold spec_kvs_live spec_kvs_size
  have hk : KVS_HEADER_SIZE = 20 := rfl
  rw [decide_eq_false_iff_not]
  intro hh
  have h5 := hh.2.2.2.2.1
  have h1 := hh.2.1
  rw [hk] at h5
  omega

/-- The calls of the example on media that hold the log of 171798690 sets in
the partition of `2^32 - 2` bytes, with erased bytes behind the log. -/
theorem example_big_tail_facts (pmX : fram_pm_t) (pmem2 : Nat → Nat)
    (h2 : PmOK pmX example_big_part pmem2)
    (hfindX : fram_pm_find pmX example_kvs_cfg.partition_name = some example_big_part)
    (hlog2 : KLogSeq pmem2 example_kvs_cfg.magic 0 0 example_big_ops2)
    (herased : ∀ j, 4294967250 ≤ j → j < example_big_part.size → pmem2 j = 0xFF) :
    (example_kvs_recover pmX).1 = ESP_OK ∧
    (example_kvs_recover pmX).2.1.write_offset = 4294967250 ∧
    (example_kvs_set_new pmX).1 = ESP_OK ∧
    (example_kvs_set_new pmX).2.1.write_offset = 4294967275 ∧
    (∀ i, i < example_big_part.size → pmem2 i < 256) ∧
    spec_kvs_live example_K example_kvs_cfg.magic example_big_part pmem2
      (4294967250 + (20 + 1 + 3 + 1)) = false ∧
    (fram_kvs_get example_K (example_kvs_set_new pmX).2.1
      (example_kvs_set_new pmX).2.2 [0x62] [0, 0, 0, 0, 0, 0, 0, 0] 8).1
      = ESP_ERR_NOT_FOUND := by
  obtain ⟨pmI, hI, hokI⟩ := example_big_recover pmX pmem2 h2 hfindX hlog2 herased
  obtain ⟨pm2, pmem3, hS, hok2, hlog3⟩ := example_big_set_new pmI pmem2 hokI hlog2
  have hget := example_big_get pm2 pmem3 hok2 hlog3
  have hS2 : example_kvs_set_new pmX
      = (ESP_OK, { part := some example_big_part, magic := example_kvs_cfg.magic
                   write_offset := 4294967275, next_seq := 171798691, ready := true
                   mutex := SemaphoreHandle_t.free }, pm2) := by
    unfold example_kvs_set_new
    rw [hI]
    exact hS
  have hbytes : ∀ i, i < example_big_part.size → pmem2 i < 256 := by
    intro i hi
    by_cases c : i < 4294967250
    · exact klogseq_bytes pmem2 _ example_big_ops2 0 0 hlog2 (fun op ho => by
        rw [List.eq_of_mem_replicate ho]
        exact ⟨by decide, by decide⟩) i (Nat.zero_le _) (by rw [example_big_size2]; omega)
    · rw [herased i (by omega) hi]
      exact (by decide : (255 : Nat) < 256)
  rw [hS2, hI]
  exact ⟨rfl, rfl, rfl, rfl, hbytes, spec_kvs_live_end _ _ _ _ _ (by decide), hget⟩

/-- The store near the end of the partition of `2^32 - 2` bytes: the run of
`fram_kvs_init` and 171798690 calls `set("a", "one", 3)` on the erased
partition succeeds and leaves a working partition whose bytes are below 256;
`fram_kvs_init` on these media returns `ESP_OK` with
`write_offset = 2^32 - 46`, the call `set("b", "new", 3)` returns `ESP_OK`
with `write_offset = 2^32 - 21` afterwards, no live record lies at the offset
where the new record ends, and `fram_kvs_get("b")` returns
`ESP_ERR_NOT_FOUND`. -/
theorem example_big_full_facts :
    (example_kvs_run example_big_pm example_big_ops2).1 = ESP_OK ∧
    ∃ pmem2, PmOK (example_kvs_run example_big_pm example_big_ops2).2.2 example_big_part pmem2 ∧
      fram_pm_find (example_kvs_run example_big_pm example_big_ops2).2.2
        example_kvs_cfg.partition_name = some example_big_part ∧
      (example_kvs_recover (example_kvs_run example_big_pm example_big_ops2).2.2).1 = ESP_OK ∧
      (example_kvs_recover
        (example_kvs_run example_big_pm example_big_ops2).2.2).2.1.write_offset = 4294967250 ∧
      (example_kvs_set_new (example_kvs_run example_big_pm example_big_ops2).2.2).1 = ESP_OK ∧
      (example_kvs_set_new
        (example_kvs_run example_big_pm example_big_ops2).2.2).2.1.write_offset = 4294967275 ∧
      (∀ i, i < example_big_part.size → pmem2 i < 256) ∧
      spec_kvs_live example_K example_kvs_cfg.magic example_big_part pmem2
        (4294967250 + (20 + 1 + 3 + 1)) = false ∧
      (fram_kvs_get example_K
        (example_kvs_set_new (example_kvs_run example_big_pm example_big_ops2).2.2).2.1
        (example_kvs_set_new (example_kvs_run example_big_pm example_big_ops2).2.2).2.2
        [0x62] [0, 0, 0, 0, 0, 0, 0, 0] 8).1 = ESP_ERR_NOT_FOUND := by
  obtain ⟨hrunok, pmem2, h2, hfindX, hlog2, herased⟩ := example_kvs_run_log example_big_pm
    example_big_part example_big_ops2 example_big_pm_ok example_big_find example_big_valid2
    (by rw [example_big_size2]; decide)
  rw [example_big_size2] at herased
  exact ⟨hrunok, pmem2, h2, hfindX, example_big_tail_facts _ pmem2 h2 hfindX hlog2 herased⟩

/-- The stale record of the example: the content of the partition with the
corrupted second record holds a live record at offset 50, where the record of
a set of 25 bytes written at offset 25 ends. -/
theorem example_stale_live :
    ∃ pmem, PmOK example_stale_pm example_kvs_part pmem ∧
      (∀ i, i < example_kvs_part.size → pmem i < 256) ∧
      spec_kvs_live example_K example_kvs_cfg.magic example_kvs_part pmem
        (25 + (20 + 1 + 3 + 1)) = true := by
  obtain ⟨pmem2, h2, he2, hm2, _⟩ := example_kvs_run_exact example_stale_ops
    example_stale_ops_valid (by decide)
  have ha2 := he2.after
  obtain ⟨_, _, hrecC, _⟩ :
      KRec pmem2 0 (example_kvs_run example_pm example_stale_ops).2.1.magic 0
        (kvs_op.set [0x61] [0x6F, 0x6E, 0x65]) ∧
      KRec pmem2 25 (example_kvs_run example_pm example_stale_ops).2.1.magic 1
        (kvs_op.set [0x62] [0x74, 0x77, 0x6F]) ∧
      KRec pmem2 50 (example_kvs_run example_pm example_stale_ops).2.1.magic 2
        (kvs_op.set [0x62] [0x6F, 0x6C, 0x64]) ∧ True := he2.log
  have herased : ∀ j, 75 ≤ j → j < example_kvs_part.size → pmem2 j = 0xFF := ha2.erased
  have hP : PmOK example_stale_pm example_kvs_part
      (mem_write pmem2 (25 + 16) (le_bytes 4 (example_stale_stored_crc ^^^ 4294967295))) :=
    kvs_poke_crc_ok _ example_kvs_part pmem2 25 _ h2 (by decide)
  have hl4 : (le_bytes 4 (example_stale_stored_crc ^^^ 4294967295)).length = 4 :=
    le_bytes_length _ _
  have hPout : ∀ a, (a < 41 ∨ 45 ≤ a) →
      mem_write pmem2 (25 + 16) (le_bytes 4 (example_stale_stored_crc ^^^ 4294967295)) a
        = pmem2 a := by
    intro a ha
    exact mem_write_outside _ _ _ _ (by rw [hl4]; omega)
  have hrecC1 := krec_congr pmem2
    (mem_write pmem2 (25 + 16) (le_bytes 4 (example_stale_stored_crc ^^^ 4294967295))) 50 _ 2 _
    (fun a ha1 _ => hPout a (Or.inr (by omega))) hrecC
  have hacc := kvs_accept_rec example_K (example_kvs_run example_pm example_stale_ops).2.1
    example_kvs_part _ 50 2 (kvs_op.set [0x62] [0x6F, 0x6C, 0x64]) ha2.magic_lt (by decide)
    ⟨by decide, by decide, by decide, by decide⟩ (by decide) hrecC1
  have hbytes2 : ∀ i, i < example_kvs_part.size → pmem2 i < 256 := by
    intro i hi
    by_cases c : i < 75
    · exact klogseq_bytes pmem2 _ example_stale_ops 0 0 he2.log (by decide) i (Nat.zero_le _)
        (by
          have e : kvs_log_size example_stale_ops = 75 := by decide
          rw [e]; omega)
    · rw [herased i (by omega) hi]
      exact (by decide : (255 : Nat) < 256)
  refine ⟨_, hP, ?_, ?_⟩
  · intro i hi
    by_cases c : 41 ≤ i ∧ i < 45
    · obtain ⟨j, rfl⟩ : ∃ j, i = (25 + 16) + j := ⟨i - 41, by omega⟩
      rw [mem_write_inside _ _ _ j (by rw [hl4]; omega)]
      exact getD_lt_of_all _ j (le_bytes_lt 4 _)
    · rw [hPout i (by omega)]
      exact hbytes2 i hi
  · rw [← hm2]
    cases c : spec_kvs_live example_K (example_kvs_run example_pm example_stale_ops).2.1.magic
        example_kvs_part
        (mem_write pmem2 (25 + 16) (le_bytes 4 (example_stale_stored_crc ^^^ 4294967295)))
        (25 + (20 + 1 + 3 + 1)) with
    | true => rfl
    | false =>
      have hn := (kvs_accept_none_iff example_K
        (example_kvs_run example_pm example_stale_ops).2.1 example_kvs_part _ _).mpr c
      have hn2 : kvs_accept example_K (example_kvs_run example_pm example_stale_ops).2.1
          example_kvs_part
          (mem_write pmem2 (25 + 16) (le_bytes 4 (example_stale_stored_crc ^^^ 4294967295)))
          50 = none := hn
      rw [hacc] at hn2
      exact Option.noConfusion hn2

/-- Counterexample for C15, two partition contents on which `fram_kvs_init`
succeeds. First, a stale record: after `set("a", "one", 3)`,
`set("b", "two", 3)`, `set("b", "old", 3)` on the erased `"kvs"` partition of
the tests, the stored checksum of the second record is complemented on the
media. `fram_kvs_init` on this content returns `ESP_OK` with
`write_offset = 25`, behind the first record. The call `set("b", "new", 3)`
returns `ESP_OK` and writes its record over the second one, with
`write_offset = 50` afterwards. The third record, still intact behind it, is
found by the scans: `fram_kvs_get("b")` returns `"old"`, not `"new"`, and
`fram_kvs_init` again ends at 75, not at the in-memory `write_offset`. The
content holds a live record at offset 50, where the new record ends.
Second, a partition of `2^32 - 2` bytes that holds 171798690 records of 25
bytes and erased bytes behind them: `fram_kvs_init` returns `ESP_OK` with
`write_offset = 2^32 - 46`, the call `set("b", "new", 3)` returns `ESP_OK`
with `write_offset = 2^32 - 21` afterwards and no live record lies where the
new record ends, but in the scan of `fram_kvs_get("b")` the 32-bit sum
`offset + 21` of the loop condition wraps at `2^32 - 21`, the header read
there is refused, and the call returns `ESP_ERR_NOT_FOUND`. -/
theorem kvs_set_then_get_recovered_counterexample :
    ((example_kvs_recover example_stale_pm).1 = ESP_OK ∧
      (example_kvs_recover example_stale_pm).2.1.write_offset = 25 ∧
      (example_kvs_set_new example_stale_pm).1 = ESP_OK ∧
      (example_kvs_set_new example_stale_pm).2.1.write_offset = 50 ∧
      (∃ pm3, fram_kvs_get example_K (example_kvs_set_new example_stale_pm).2.1
          (example_kvs_set_new example_stale_pm).2.2 [0x62] [0, 0, 0, 0, 0, 0, 0, 0] 8
        = (ESP_OK, [0x6F, 0x6C, 0x64, 0, 0, 0, 0, 0], 3, pm3)) ∧
      (fram_kvs_init example_K (example_kvs_set_new example_stale_pm).2.2 example_kvs_cfg).1
        = ESP_OK ∧
      (fram_kvs_init example_K (example_kvs_set_new example_stale_pm).2.2
        example_kvs_cfg).2.1.write_offset = 75) ∧
    (∃ pmem, PmOK example_stale_pm example_kvs_part pmem ∧
        (∀ i, i < example_kvs_part.size → pmem i < 256) ∧
        spec_kvs_live example_K example_kvs_cfg.magic example_kvs_part pmem
          (25 + (20 + 1 + 3 + 1)) = true) ∧
    ((example_kvs_run example_big_pm example_big_ops2).1 = ESP_OK ∧
      ∃ pmem2, PmOK (example_kvs_run example_big_pm example_big_ops2).2.2 example_big_part pmem2 ∧
        fram_pm_find (example_kvs_run example_big_pm example_big_ops2).2.2
          example_kvs_cfg.partition_name = some example_big_part ∧
        (example_kvs_recover (example_kvs_run example_big_pm example_big_ops2).2.2).1 = ESP_OK ∧
        (example_kvs_recover
          (example_kvs_run example_big_pm example_big_ops2).2.2).2.1.write_offset = 4294967250 ∧
        (example_kvs_set_new (example_kvs_run example_big_pm example_big_ops2).2.2).1 = ESP_OK ∧
        (example_kvs_set_new
          (example_kvs_run example_big_pm example_big_ops2).2.2).2.1.write_offset = 4294967275 ∧
        (∀ i, i < example_big_part.size → pmem2 i < 256) ∧
        spec_kvs_live example_K example_kvs_cfg.magic example_big_part pmem2
          (4294967250 + (20 + 1 + 3 + 1)) = false ∧
        (fram_kvs_get example_K
          (example_kvs_set_new (example_kvs_run example_big_pm example_big_ops2).2.2).2.1
          (example_kvs_set_new (example_kvs_run example_big_pm example_big_ops2).2.2).2.2
          [0x62] [0, 0, 0, 0, 0, 0, 0, 0] 8).1 = ESP_ERR_NOT_FOUND) :=
  ⟨example_stale_facts, example_stale_live, example_big_full_facts⟩

end Fram
